import Mathlib

/-!
# ft::map — a red-black tree with two threaded sentinels

Shallow embedding of `containers/map/map.hpp`.

* The free store is explicit state: `map.mem` maps an address to the live node stored there
  (`none` for an address that was never allocated or has been deleted), `map.brk` is the next
  fresh address handed out by `new`.
* A `node_type*` is an `Option Nat` (`none` is `NULL`).  Reading or writing through `NULL` or
  through a deleted node is undefined behaviour in C++; here it makes the operation return `none`.
* The payload `value_type* val` is owned by its node, so it is stored inline as an
  `Option (K × V)` (`none` is the `NULL` payload of an end node).
* `while` loops and recursive member functions take a fuel argument; the public operations
  supply a fuel computed from the state, and the theorems show that it is enough.
* An `iterator` wraps a node pointer; it is modelled by that pointer.
-/



namespace ft

/-- The colour tag `color_type` of a node. -/
inductive color_type where
  | red
  | black
  deriving DecidableEq, Repr

open color_type

/-- Sequencing of two steps, the second of which runs only if the first one is defined. -/
@[noinline]
def ub_bind {α β : Type} (x : Option α) (f : α → Option β) : Option β :=
  match x with
  | none => none
  | some a => f a

/-- The steps of an operation are sequenced with `ub_bind`. -/
instance (priority := 2000) ub_monad : Monad Option where
  pure := fun a => some a
  bind := ub_bind

/-- A `node_type*`: an address, or `none` for `NULL`. -/
abbrev ptr := Option Nat

/-- The struct `node_type`. -/
structure node_type (K V : Type) where
  color : color_type
  val : Option (K × V)
  l : ptr
  r : ptr
  parent : ptr

/-- The default constructor `node_type()`, used for end nodes. -/
def node_type.mk_end {K V : Type} : node_type K V :=
  { color := black, val := none, l := none, r := none, parent := none }

/-- The value constructor `node_type(x, al)`. -/
def node_type.mk_val {K V : Type} (x : K × V) : node_type K V :=
  { color := red, val := some x, l := none, r := none, parent := none }

/-- The member variables of `map` (`_cmp` is `_cmp_k` applied to the keys of two pairs, the
allocator is the free store `mem`/`brk`). -/
structure map (K V : Type) where
  mem : Nat → Option (node_type K V)
  brk : Nat
  _root : ptr
  _cmp_k : K → K → Bool
  _sz : Nat

section heap
variable {K V : Type}

/-- Dereference `*p`. -/
@[noinline]
def deref (m : map K V) (p : ptr) : Option (node_type K V) := p.bind m.mem

/-- Read `p->color`. -/
def get_color (m : map K V) (p : ptr) : Option color_type := (deref m p).map (·.color)
/-- Read `p->val`. -/
def get_val (m : map K V) (p : ptr) : Option (Option (K × V)) := (deref m p).map (·.val)
/-- Read `p->l`. -/
def get_l (m : map K V) (p : ptr) : Option ptr := (deref m p).map (·.l)
/-- Read `p->r`. -/
def get_r (m : map K V) (p : ptr) : Option ptr := (deref m p).map (·.r)
/-- Read `p->parent`. -/
def get_parent (m : map K V) (p : ptr) : Option ptr := (deref m p).map (·.parent)

/-- Assign to a field of `*p`. -/
@[noinline]
def store (m : map K V) (p : ptr) (f : node_type K V → node_type K V) : Option (map K V) :=
  match p with
  | none => none
  | some a =>
    match m.mem a with
    | none => none
    | some n => some { m with mem := Function.update m.mem a (some (f n)) }

/-- Assignment `p->color = c`. -/
def set_color (m : map K V) (p : ptr) (c : color_type) : Option (map K V) :=
  store m p (fun n => { n with color := c })
/-- Assignment `p->l = q`. -/
def set_l (m : map K V) (p : ptr) (q : ptr) : Option (map K V) :=
  store m p (fun n => { n with l := q })
/-- Assignment `p->r = q`. -/
def set_r (m : map K V) (p : ptr) (q : ptr) : Option (map K V) :=
  store m p (fun n => { n with r := q })
/-- Assignment `p->parent = q`. -/
def set_parent (m : map K V) (p : ptr) (q : ptr) : Option (map K V) :=
  store m p (fun n => { n with parent := q })

/-- Expression `new node_type(...)`: the node is placed at the fresh address `brk`. -/
@[noinline]
def new_node (m : map K V) (n : node_type K V) : map K V × ptr :=
  ({ m with mem := Function.update m.mem m.brk (some n), brk := m.brk + 1 }, some m.brk)

/-- Statement `delete p` (together with the destruction of the payload). -/
@[noinline]
def delete_node (m : map K V) (p : ptr) : Option (map K V) :=
  match p with
  | none => none
  | some a =>
    match m.mem a with
    | none => none
    | some _ => some { m with mem := Function.update m.mem a none }

/-- Member `node_type::isOnLeft`. -/
def isOnLeft (m : map K V) (p : ptr) : Option Bool := do
  let par ← get_parent m p
  let pl ← get_l m par
  pure (decide (p = pl))

/-- Member `node_type::sibling`. -/
def sibling (m : map K V) (p : ptr) : Option ptr := do
  let par ← get_parent m p
  if par ≠ none then
    if (← isOnLeft m p) then get_r m par else get_l m par
  else pure none

/-- Member `node_type::hasRedChild`. -/
def hasRedChild (m : map K V) (p : ptr) : Option Bool := do
  let pl ← get_l m p
  let lred ← if pl ≠ none then (do pure (decide ((← get_color m pl) = red))) else pure false
  if lred then pure true
  else
    let pr ← get_r m p
    if pr ≠ none then (do pure (decide ((← get_color m pr) = red))) else pure false

end heap

namespace map
variable {K V : Type} [DecidableEq K]

/-- Member `_insert_ends`: install the two end nodes. -/
def _insert_ends (m : map K V) : Option (map K V) := do
  let (m, a) := new_node m node_type.mk_end
  let m := { m with _root := a }
  let (m, b) := new_node m node_type.mk_end
  let m ← set_r m m._root b
  set_parent m (← get_r m m._root) m._root

/-- The default constructor `map(comp, alloc)`. -/
def mk_default (comp : K → K → Bool) : Option (map K V) :=
  _insert_ends { mem := fun _ => none, brk := 0, _root := none, _cmp_k := comp, _sz := 0 }

/-- Member `destroy_rec`. -/
def destroy_rec : Nat → map K V → ptr → Option (map K V)
  | 0, _, _ => none
  | fuel + 1, m, n =>
    if n ≠ none then do
      let _ ← get_val m n
      let m ← destroy_rec fuel m (← get_l m n)
      let m ← destroy_rec fuel m (← get_r m n)
      delete_node m n
    else pure m

/-- The loop `while (tmp->l && tmp->l->val) tmp = tmp->l` of `begin()` and `erase`. -/
def descend_l : Nat → map K V → ptr → Option ptr
  | 0, _, _ => none
  | fuel + 1, m, tmp => do
    let tl ← get_l m tmp
    if tl ≠ none then
      if (← get_val m tl).isSome then descend_l fuel m tl else pure tmp
    else pure tmp

/-- The loop `while (tmp->r && tmp->r->val) tmp = tmp->r` of `erase`. -/
def descend_r : Nat → map K V → ptr → Option ptr
  | 0, _, _ => none
  | fuel + 1, m, tmp => do
    let tr ← get_r m tmp
    if tr ≠ none then
      if (← get_val m tr).isSome then descend_r fuel m tr else pure tmp
    else pure tmp

/-- The loop of `end()`: `while (tmp->r) tmp = tmp->r`. -/
def end_loop : Nat → map K V → ptr → Option ptr
  | 0, _, _ => none
  | fuel + 1, m, tmp => do
    let tr ← get_r m tmp
    if tr ≠ none then end_loop fuel m tr else pure tmp

/-- Member `end()`. -/
def end_ (m : map K V) : Option ptr := end_loop (m.brk + 1) m m._root

/-- Member `begin()`. -/
def begin (m : map K V) : Option ptr :=
  if m._sz = 0 then m.end_ else descend_l (m.brk + 1) m m._root

/-- Member `empty()`. -/
def empty (m : map K V) : Bool := if m._sz = 0 then true else false

/-- Member `size()`. -/
def size (m : map K V) : Nat := m._sz

/-- Member `clear()`. -/
def clear (m : map K V) : Option (map K V) := do
  let m ← destroy_rec (m.brk + 1) m m._root
  let m := { m with _sz := 0 }
  _insert_ends m

/-- Member `is_black`: the test `!s || s->color == black`. -/
def is_black (m : map K V) (s : ptr) : Option Bool :=
  if s = none then pure true else (do pure (decide ((← get_color m s) = black)))

/-- Member `is_red`: the test `s && s->color == red`, which `_insert_fix` writes inline. -/
def is_red (m : map K V) (s : ptr) : Option Bool :=
  if s ≠ none then (do pure (decide ((← get_color m s) = red))) else pure false

/-- Member `_l_rotate`. -/
def _l_rotate (m : map K V) (x : ptr) : Option (map K V) := do
  let y ← get_r m x
  let m ← set_r m x (← get_l m y)
  let yl ← get_l m y
  let m ← if yl ≠ none then set_parent m yl x else pure m
  let m ← set_parent m y (← get_parent m x)
  let xp ← get_parent m x
  let m ← if xp = none then pure { m with _root := y }
    else (do
      if x = (← get_l m xp) then set_l m xp y else set_r m xp y)
  let m ← set_l m y x
  set_parent m x y

/-- Member `_r_rotate`. -/
def _r_rotate (m : map K V) (x : ptr) : Option (map K V) := do
  let y ← get_l m x
  let m ← set_l m x (← get_r m y)
  let yr ← get_r m y
  let m ← if yr ≠ none then set_parent m yr x else pure m
  let m ← set_parent m y (← get_parent m x)
  let xp ← get_parent m x
  let m ← if xp = none then pure { m with _root := y }
    else (do
      if x = (← get_r m xp) then set_r m xp y else set_l m xp y)
  let m ← set_r m y x
  set_parent m x y

/-- The recolouring branch of `_insert_fix` (uncle `u` is red): returns the new `k`. -/
def _insert_fix_recolor (m : map K V) (k u : ptr) : Option (map K V × ptr) := do
  let m ← set_color m u black
  let m ← set_color m (← get_parent m k) black
  let m ← set_color m (← get_parent m (← get_parent m k)) red
  let k ← get_parent m (← get_parent m k)
  pure (m, k)

/-- One iteration of the `while` body of `_insert_fix`, up to the `if (k == _root) break`:
returns the state and the new `k`. -/
def _insert_fix_body (m : map K V) (k : ptr) : Option (map K V × ptr) := do
  let kp ← get_parent m k
  let kpp ← get_parent m kp
  if kp = (← get_r m kpp) then
    let u ← get_l m kpp
    if (← is_red m u) then _insert_fix_recolor m k u
    else
      let (m, k) ← if k = (← get_l m kp) then (do
          let k := kp
          let m ← _r_rotate m k
          pure (m, k))
        else pure (m, k)
      let m ← set_color m (← get_parent m k) black
      let m ← set_color m (← get_parent m (← get_parent m k)) red
      let m ← _l_rotate m (← get_parent m (← get_parent m k))
      pure (m, k)
  else
    let u ← get_r m kpp
    if (← is_red m u) then _insert_fix_recolor m k u
    else
      let (m, k) ← if k = (← get_r m kp) then (do
          let k := kp
          let m ← _l_rotate m k
          pure (m, k))
        else pure (m, k)
      let m ← set_color m (← get_parent m k) black
      let m ← set_color m (← get_parent m (← get_parent m k)) red
      let m ← _r_rotate m (← get_parent m (← get_parent m k))
      pure (m, k)

/-- Member `_insert_fix`. -/
def _insert_fix : Nat → map K V → ptr → Option (map K V)
  | 0, _, _ => none
  | fuel + 1, m, k => do
    let kp ← get_parent m k
    if (← is_red m kp) then
      let (m, k) ← _insert_fix_body m k
      if k = m._root then set_color m m._root black
      else _insert_fix fuel m k
    else set_color m m._root black

/-- Member `insert_body`: returns the state, the node and the flag of the pair. -/
def insert_body : Nat → map K V → ptr → K × V → Option (map K V × ptr × Bool)
  | 0, _, _, _ => none
  | fuel + 1, m, n, x => do
    match (← get_val m n) with
    | some nv =>
      if x.1 = nv.1 then pure (m, n, false)
      else if m._cmp_k x.1 nv.1 then
        let nl ← get_l m n
        if nl ≠ none then insert_body fuel m nl x
        else
          let (m, a) := new_node m (node_type.mk_val x)
          let m ← set_l m n a
          let m ← set_parent m (← get_l m n) n
          pure (m, ← get_l m n, true)
      else
        let nr ← get_r m n
        if nr ≠ none then insert_body fuel m nr x
        else
          let (m, a) := new_node m (node_type.mk_val x)
          let m ← set_r m n a
          let m ← set_parent m (← get_r m n) n
          pure (m, ← get_r m n, true)
    | none =>
      let (m, tmp) := new_node m (node_type.mk_val x)
      let np ← get_parent m n
      let m ← set_parent m tmp np
      let onr ← if np ≠ none then (do pure (decide (n = (← get_r m np)))) else pure false
      let m ← if onr then set_r m tmp n else set_l m tmp n
      let m ← if m._root = n then (do
          let m := { m with _root := tmp }
          let m ← set_r m tmp (← get_r m n)
          let m ← set_parent m (← get_r m tmp) tmp
          set_r m n none)
        else (do
          if n = (← get_r m (← get_parent m n)) then set_r m (← get_parent m n) tmp
          else set_l m (← get_parent m n) tmp)
      let m ← set_parent m n tmp
      pure (m, tmp, true)

/-- Member `insert(const value_type&)`: returns the state and the pair `(iterator, bool)`. -/
def insert (m : map K V) (x : K × V) : Option (map K V × ptr × Bool) := do
  let (m, it, b) ← insert_body (m.brk + 1) m m._root x
  if b then
    let m := { m with _sz := m._sz + 1 }
    let m ← if m._sz ≤ 2 then set_color m m._root black else _insert_fix (m.brk + 1) m it
    pure (m, it, b)
  else pure (m, it, b)

/-- Member `operator[]`: returns the state and the node whose `second` is referred to. -/
def index [Inhabited V] (m : map K V) (k : K) : Option (map K V × ptr) := do
  let (m, it, _) ← insert m (k, default)
  let _ ← (← get_val m it)
  pure (m, it)

/-- Member `_swap_set_parent`. -/
def _swap_set_parent (m : map K V) (child new_parent : ptr) : Option (map K V) :=
  if child ≠ none ∧ child ≠ new_parent then set_parent m child new_parent else pure m

/-- Member `_swap_set_child`. -/
def _swap_set_child (m : map K V) (old_child new_child : ptr) : Option (map K V) := do
  let p ← get_parent m old_child
  if p ≠ none ∧ p ≠ new_child then (do
    if (← get_l m p) = old_child then set_l m p new_child else set_r m p new_child)
  else pure m

/-- Member `_swap_nodes`. -/
def _swap_nodes (m : map K V) (p tmp : ptr) : Option (map K V) := do
  let m ← _swap_set_parent m (← get_l m p) tmp
  let m ← _swap_set_parent m (← get_r m p) tmp
  let m ← _swap_set_child m p tmp
  let m := if p = m._root then { m with _root := tmp }
    else if tmp = m._root then { m with _root := p }
    else m
  let m ← _swap_set_parent m (← get_l m tmp) p
  let m ← _swap_set_parent m (← get_r m tmp) p
  let m ← _swap_set_child m tmp p
  let old_l ← get_l m p
  let old_r ← get_r m p
  let old_p ← get_parent m p
  let old_color ← get_color m p
  let tl ← get_l m tmp
  let m ← if tl ≠ p then set_l m p tl else set_l m p tmp
  let tr ← get_r m tmp
  let m ← if tr ≠ p then set_r m p tr else set_r m p tmp
  let tp ← get_parent m tmp
  let m ← if tp ≠ p then set_parent m p tp else set_parent m p tmp
  let m ← if old_l ≠ tmp then set_l m tmp old_l else set_l m tmp p
  let m ← if old_r ≠ tmp then set_r m tmp old_r else set_r m tmp p
  let m ← if old_p ≠ tmp then set_parent m tmp old_p else set_parent m tmp p
  let m ← set_color m p (← get_color m tmp)
  set_color m tmp old_color

/-- The branch of `fixDoubleBlack` for a black sibling with a red child. -/
def fixDoubleBlack_red_child (m : map K V) (parent sibling : ptr) : Option (map K V) := do
  let sl ← get_l m sibling
  let c1 ← if sl ≠ none then (do
      if (← get_val m sl).isSome then pure (decide ((← get_color m sl) = red)) else pure false)
    else pure false
  let m ← if c1 then
      if (← isOnLeft m sibling) then (do
        let m ← set_color m (← get_l m sibling) (← get_color m sibling)
        let m ← set_color m sibling (← get_color m parent)
        _r_rotate m parent)
      else (do
        let m ← set_color m (← get_l m sibling) (← get_color m parent)
        let m ← _r_rotate m sibling
        _l_rotate m parent)
    else
      if (← isOnLeft m sibling) then (do
        let m ← set_color m (← get_r m sibling) (← get_color m parent)
        let m ← _l_rotate m sibling
        _r_rotate m parent)
      else (do
        let m ← set_color m (← get_r m sibling) (← get_color m sibling)
        let m ← set_color m sibling (← get_color m parent)
        _l_rotate m parent)
  set_color m parent black

/-- Member `fixDoubleBlack`. -/
def fixDoubleBlack : Nat → map K V → ptr → ptr → ptr → Option (map K V)
  | 0, _, _, _, _ => none
  | fuel + 1, m, x, parent, sibling =>
    if x = m._root then pure m
    else if sibling = none then do
      fixDoubleBlack fuel m parent (← get_parent m parent) (← ft.sibling m parent)
    else do
      if (← get_color m sibling) = red then
        let m ← set_color m parent red
        let m ← set_color m sibling black
        if (← isOnLeft m sibling) then
          let m ← _r_rotate m parent
          fixDoubleBlack fuel m x parent (← get_l m parent)
        else
          let m ← _l_rotate m parent
          fixDoubleBlack fuel m x parent (← get_r m parent)
      else
        if (← hasRedChild m sibling) then fixDoubleBlack_red_child m parent sibling
        else
          let m ← set_color m sibling red
          if (← get_color m parent) = red then set_color m parent black
          else fixDoubleBlack fuel m parent (← get_parent m parent) (← ft.sibling m parent)

/-- The two calls `fixDoubleBlack(ptr->parent->l, ...)` / `fixDoubleBlack(ptr->parent->r, ...)`
of `set_parent_target`, selected by `isleft`. -/
def set_parent_target_fix (m : map K V) (p : ptr) (isleft : Bool) : Option (map K V) := do
  let pp ← get_parent m p
  if isleft then fixDoubleBlack (2 * m.brk + 2) m (← get_l m pp) pp (← get_r m pp)
  else fixDoubleBlack (2 * m.brk + 2) m (← get_r m pp) pp (← get_l m pp)

/-- Member `set_parent_target`. -/
def set_parent_target (m : map K V) (p target : ptr) : Option (map K V) := do
  let isleft ← isOnLeft m p
  let pp ← get_parent m p
  let m ← if pp ≠ none then (if isleft then set_l m pp target else set_r m pp target)
    else pure { m with _root := target }
  if target ≠ none then
    let m ← set_parent m target (← get_parent m p)
    if (← get_color m p) = black then
      let tb ← if (← get_color m target) = black then
          (do pure (decide ((← get_parent m target) ≠ none)))
        else pure false
      if tb then set_parent_target_fix m p isleft else set_color m target black
    else pure m
  else if (← get_color m p) = black then set_parent_target_fix m p isleft
  else pure m

/-- Member `erase(iterator)`; the fuel bounds the depth of the self-call made after
`_swap_nodes`.  (`--_sz` is only reached after the payload of a data node was destroyed, so the
count is positive there and the subtraction does not wrap.) -/
def erase_rec : Nat → map K V → ptr → Option (map K V)
  | 0, _, _ => none
  | fuel + 1, m, p =>
    if m._sz = 1 then m.clear
    else do
      let pl ← get_l m p
      let pr ← get_r m p
      if pl ≠ none ∧ pr ≠ none then
        let tmp ← (do
          if (← get_val m pr).isSome then descend_l (m.brk + 1) m pr
          else descend_r (m.brk + 1) m pl)
        let m ← _swap_nodes m p tmp
        erase_rec fuel m p
      else
        let m ← if pl = none ∧ pr = none then set_parent_target m p none
          else if pl = none ∧ pr ≠ none then set_parent_target m p pr
          else if pl ≠ none ∧ pr = none then set_parent_target m p pl
          else pure m
        let _ ← (← get_val m p)
        let m ← delete_node m p
        let m := { m with _sz := m._sz - 1 }
        if m._sz ≠ 0 then set_color m m._root black else pure m

/-- Member `erase(iterator)`. -/
def erase (m : map K V) (pos : ptr) : Option (map K V) := erase_rec (m.brk + 1) m pos

/-- Member `find_rec`. -/
def find_rec : Nat → map K V → ptr → K → Option ptr
  | 0, _, _, _ => none
  | fuel + 1, m, n, k =>
    if n = none then pure none
    else do
      match (← get_val m n) with
      | none => pure none
      | some nv =>
        if k = nv.1 then pure n
        else if m._cmp_k k nv.1 then find_rec fuel m (← get_l m n) k
        else find_rec fuel m (← get_r m n) k

/-- Member `find`. -/
def find (m : map K V) (k : K) : Option ptr := do
  let res ← find_rec (m.brk + 1) m m._root k
  if res ≠ none then pure res else m.end_

/-- Member `count`. -/
def count (m : map K V) (k : K) : Option Nat := do
  let it ← m.find k
  if it = (← m.end_) then pure 0 else pure 1

/-- Member `erase(key_type)`: returns the state and the number of elements removed. -/
def erase_key (m : map K V) (k : K) : Option (map K V × Nat) := do
  let it ← m.find k
  if it = (← m.end_) then pure (m, 0)
  else
    let m ← m.erase it
    pure (m, 1)

/-! ### Observations of a state (specification side) -/

/-- The addresses of the nodes below `p` in in-order (left subtree, node, right subtree),
following the `l` and `r` links of live nodes. -/
def inorder_rec : Nat → (Nat → Option (node_type K V)) → ptr → List Nat
  | 0, _, _ => []
  | _ + 1, _, none => []
  | fuel + 1, mem, some a =>
    match mem a with
    | none => []
    | some n => inorder_rec fuel mem n.l ++ a :: inorder_rec fuel mem n.r

/-- The nodes of the tree in in-order, sentinels included. -/
def nodes (m : map K V) : List Nat := inorder_rec m.brk m.mem m._root

/-- The payload stored at an address, if it is a live data node. -/
def payload (m : map K V) (a : Nat) : Option (K × V) := (m.mem a).bind (·.val)

/-- The data nodes of the tree in in-order. -/
def data_nodes (m : map K V) : List Nat := m.nodes.filter (fun a => (m.payload a).isSome)

/-- The in-order sequence of pairs. -/
def to_list (m : map K V) : List (K × V) := m.nodes.filterMap m.payload

/-- The in-order sequence of keys of the data nodes. -/
def keys (m : map K V) : List K := m.to_list.map Prod.fst

end map

end ft

namespace ft
open color_type

/-! ### The tree a state represents (specification side) -/

/-- A binary tree of nodes, each with its address, colour and payload; `nil` is an absent
child (`NULL`). -/
inductive tree (K V : Type) where
  | nil : tree K V
  | node (a : Nat) (c : color_type) (v : Option (K × V)) (l r : tree K V) : tree K V

section treedefs
variable {K V : Type}

/-- The pointer to the root node of a tree. -/
def tree.top : tree K V → ptr
  | .nil => none
  | .node a _ _ _ _ => some a

/-- The nodes of a tree in in-order, as pairs of address and payload. -/
def tree.elems : tree K V → List (Nat × Option (K × V))
  | .nil => []
  | .node a _ v l r => l.elems ++ (a, v) :: r.elems

/-- The addresses of the nodes of a tree in in-order. -/
def tree.addrs (t : tree K V) : List Nat := t.elems.map Prod.fst

/-- The payloads of the data nodes of a tree in in-order. -/
def tree.data (t : tree K V) : List (K × V) := t.elems.filterMap Prod.snd

/-- The number of nodes on the longest downward path. -/
def tree.height : tree K V → Nat
  | .nil => 0
  | .node _ _ _ l r => max l.height r.height + 1

/-- The colour of the root of a tree, an absent child counting as black. -/
def tree.color : tree K V → color_type
  | .nil => black
  | .node _ c _ _ _ => c

/-- The memory `mem` holds the tree `t` below a node (or root slot) `par`: every node of `t`
is live at its address with the colour, payload, children and parent that `t` prescribes. -/
def Shaped (mem : Nat → Option (node_type K V)) : ptr → tree K V → Prop
  | _, .nil => True
  | par, .node a c v l r =>
    mem a = some { color := c, val := v, l := l.top, r := r.top, parent := par } ∧
      Shaped mem (some a) l ∧ Shaped mem (some a) r

/-- One step of a path from a subtree up to the root: the parent node and the sibling
subtree; `L` when the subtree is the left child of the parent, `R` when it is the right one. -/
inductive frame (K V : Type) where
  | L (a : Nat) (c : color_type) (v : Option (K × V)) (r : tree K V) : frame K V
  | R (a : Nat) (c : color_type) (v : Option (K × V)) (l : tree K V) : frame K V

/-- The tree obtained by plugging `t` into the hole of a path (innermost frame first). -/
def fill : List (frame K V) → tree K V → tree K V
  | [], t => t
  | .L a c v r :: p, t => fill p (.node a c v t r)
  | .R a c v l :: p, t => fill p (.node a c v l t)

/-- The address of a frame's node. -/
def frame.addr : frame K V → Nat
  | .L a _ _ _ => a
  | .R a _ _ _ => a

/-- The colour of a frame's node. -/
def frame.color : frame K V → color_type
  | .L _ c _ _ => c
  | .R _ c _ _ => c

/-- The payload of a frame's node. -/
def frame.val : frame K V → Option (K × V)
  | .L _ _ v _ => v
  | .R _ _ v _ => v

/-- The pointer to the parent of the hole of a path. -/
def ptop : List (frame K V) → ptr
  | [] => none
  | f :: _ => some f.addr

/-- The nodes that precede the hole of a path in in-order. -/
def pbefore : List (frame K V) → List (Nat × Option (K × V))
  | [] => []
  | .L _ _ _ _ :: p => pbefore p
  | .R a _ v l :: p => pbefore p ++ l.elems ++ [(a, v)]

/-- The nodes that follow the hole of a path in in-order. -/
def pafter : List (frame K V) → List (Nat × Option (K × V))
  | [] => []
  | .L a _ v r :: p => (a, v) :: r.elems ++ pafter p
  | .R _ _ _ _ :: p => pafter p

/-- The addresses of the nodes of a path: its frames and their sibling subtrees. -/
def paddrs (p : List (frame K V)) : List Nat := (pbefore p ++ pafter p).map Prod.fst

/-- The memory holds the frames of a path whose hole is occupied by the pointer `h`. -/
def ShapedPath (mem : Nat → Option (node_type K V)) : List (frame K V) → ptr → Prop
  | [], _ => True
  | .L a c v r :: p, h =>
    mem a = some { color := c, val := v, l := h, r := r.top, parent := ptop p } ∧
      Shaped mem (some a) r ∧ ShapedPath mem p (some a)
  | .R a c v l :: p, h =>
    mem a = some { color := c, val := v, l := l.top, r := h, parent := ptop p } ∧
      Shaped mem (some a) l ∧ ShapedPath mem p (some a)

/-- The state `m` represents the tree `t`: `_root` points to its root, the memory holds it,
no node occurs twice and every node was allocated. -/
structure Rep (m : map K V) (t : tree K V) : Prop where
  root : m._root = t.top
  shaped : Shaped m.mem none t
  nodup : t.addrs.Nodup
  bound : ∀ a ∈ t.addrs, a < m.brk

/-- The state `m2` has the fresh-address counter, element count and comparator of `m`. -/
def SameAux (m m2 : map K V) : Prop :=
  m2.brk = m.brk ∧ m2._sz = m._sz ∧ m2._cmp_k = m._cmp_k

/-- The red-black shape of a subtree with root colour `c` and black height `n`: an end node is
a childless black leaf and counts, like an absent child, as a path end of height `0`; a red data
node has black children; both subtrees of a data node have the same black height. -/
inductive Bal : tree K V → color_type → Nat → Prop where
  | nil : Bal .nil black 0
  | sentinel (a : Nat) : Bal (.node a black none .nil .nil) black 0
  | red {a : Nat} {x : K × V} {l r : tree K V} {n : Nat} :
      Bal l black n → Bal r black n → Bal (.node a red (some x) l r) red n
  | black {a : Nat} {x : K × V} {l r : tree K V} {c₁ c₂ : color_type} {n : Nat} :
      Bal l c₁ n → Bal r c₂ n → Bal (.node a black (some x) l r) black (n + 1)

/-- The red-black shape of a path whose hole expects a subtree of root colour `c` and black
height `n` (any colour if the parent is black or the hole is the root). -/
inductive PathBal : List (frame K V) → color_type → Nat → Prop where
  | root {c : color_type} {n : Nat} : PathBal [] c n
  | redL {a : Nat} {x : K × V} {r : tree K V} {p : List (frame K V)} {n : Nat} :
      Bal r black n → PathBal p red n → PathBal (.L a red (some x) r :: p) black n
  | redR {a : Nat} {x : K × V} {l : tree K V} {p : List (frame K V)} {n : Nat} :
      Bal l black n → PathBal p red n → PathBal (.R a red (some x) l :: p) black n
  | blackL {a : Nat} {x : K × V} {r : tree K V} {p : List (frame K V)} {c c₂ : color_type}
      {n : Nat} :
      Bal r c₂ n → PathBal p black (n + 1) → PathBal (.L a black (some x) r :: p) c n
  | blackR {a : Nat} {x : K × V} {l : tree K V} {p : List (frame K V)} {c c₁ : color_type}
      {n : Nat} :
      Bal l c₁ n → PathBal p black (n + 1) → PathBal (.R a black (some x) l :: p) c n

/-- The root frame of a path, if any, is black. -/
def RootBlack : List (frame K V) → Prop
  | [] => True
  | [f] => f.color = black
  | _ :: g :: p => RootBlack (g :: p)

/-- The keys of the data nodes of an in-order sequence of nodes. -/
def ekeys (es : List (Nat × Option (K × V))) : List K := (es.filterMap Prod.snd).map Prod.fst

/-- Every key of the sequence is less than `k`. -/
def KeysLt [LT K] (es : List (Nat × Option (K × V))) (k : K) : Prop := ∀ k2 ∈ ekeys es, k2 < k

/-- Every key of the sequence is greater than `k`. -/
def KeysGt [LT K] (es : List (Nat × Option (K × V))) (k : K) : Prop := ∀ k2 ∈ ekeys es, k < k2

/-- The two end nodes of an empty map: a root with a single right child. -/
def skeleton (a b : Nat) : tree K V :=
  .node a black none .nil (.node b black none .nil .nil)

/-- The comparator `std::less<Key>`. -/
def less [LinearOrder K] : K → K → Bool := fun a b => decide (a < b)

/-- What a successful `insert_body` of `x` into a state `m` with tree `T` leaves in `m2`: a new
red node at the fresh address, hanging where the red-black shape expects a black subtree of
height `0`, below data nodes only, and placed in the in-order sequence between the smaller and
the larger keys. -/
def Inserted [LinearOrder K] (m m2 : map K V) (T : tree K V) (x : K × V) : Prop :=
  ∃ (p2 : List (frame K V)) (kl kr : tree K V) (pre post : List (Nat × Option (K × V))),
    Rep m2 (fill p2 (.node m.brk red (some x) kl kr)) ∧
    (m2.brk = m.brk + 1 ∧ m2._sz = m._sz ∧ m2._cmp_k = m._cmp_k) ∧
    Bal kl black 0 ∧ Bal kr black 0 ∧ PathBal p2 black 0 ∧ RootBlack p2 ∧
    (∀ f ∈ p2, f.val ≠ none) ∧
    T.elems = pre ++ post ∧
    (fill p2 (.node m.brk red (some x) kl kr)).elems = pre ++ (m.brk, some x) :: post ∧
    KeysLt pre x.1 ∧ KeysGt post x.1 ∧
    (pre = [] → ∃ a kv rest, post = (a, some kv) :: rest) ∧
    (post = [] → ∃ a kv init, pre = init ++ [(a, some kv)])

/-- An in-order sequence framed by the two end nodes: the first and the last node carry no
payload, all nodes between them do. -/
def Framed (es : List (Nat × Option (K × V))) : Prop :=
  ∃ lo hi mid, es = (lo, none) :: (mid ++ [(hi, none)]) ∧ ∀ e ∈ mid, e.2 ≠ none

/-- The tree of a non-empty map: the in-order sequence is the low end node, the data nodes in
strictly increasing key order, the high end node; the tree is red-black with a black root. -/
structure Good [LinearOrder K] (t : tree K V) : Prop where
  framed : Framed t.elems
  nonempty : t.data ≠ []
  sorted : (ekeys t.elems).Pairwise (· < ·)
  bal : ∃ n, Bal t black n

/-- The representation invariant of `map` with the comparator `less`, for the tree `T`: the
state represents `T`, which is the skeleton of two end nodes when the map is empty and a framed,
sorted red-black tree with `_sz` data nodes otherwise. -/
def InvT [LinearOrder K] (m : map K V) (T : tree K V) : Prop :=
  Rep m T ∧ m._cmp_k = less ∧
    ((m._sz = 0 ∧ ∃ a b, T = skeleton a b) ∨ (Good T ∧ m._sz = T.data.length))

/-- The representation invariant of `map` with the comparator `less`. -/
def Inv [LinearOrder K] (m : map K V) : Prop := ∃ T, InvT m T

end treedefs

end ft

namespace ft
open color_type

section moredefs
variable {K V : Type}

/-- The pointer to the sibling of the hole of a path. -/
def psib : List (frame K V) → ptr
  | [] => none
  | .L _ _ _ r :: _ => r.top
  | .R _ _ _ l :: _ => l.top

/-- The nodes of a tree in in-order, each with its colour and payload. -/
def tree.cells : tree K V → List (Nat × color_type × Option (K × V))
  | .nil => []
  | .node a c v l r => l.cells ++ (a, c, v) :: r.cells

/-- A path all of whose frames hang their subtree as a left child. -/
def AllL (rs : List (frame K V)) : Prop := ∀ f ∈ rs, ∃ a c v s, f = frame.L a c v s

/-- A path all of whose frames hang their subtree as a right child. -/
def AllR (rs : List (frame K V)) : Prop := ∀ f ∈ rs, ∃ a c v s, f = frame.R a c v s

/-- The state `m2` has the payloads of `m` at all addresses (so the same live cells), and its
fresh-address counter, element count and comparator. -/
def Keep (m m2 : map K V) : Prop :=
  (∀ b, (m2.mem b).map (·.val) = (m.mem b).map (·.val)) ∧ m2.brk = m.brk ∧ m2._sz = m._sz ∧
    m2._cmp_k = m._cmp_k

/-- Every state that the computation `x` returns keeps the payloads of `m`. -/
structure Keeps (m : map K V) (x : Option (map K V)) : Prop where
  out : ∀ m2, x = some m2 → Keep m m2

end moredefs

namespace map
variable {K V : Type}

/-- The statements of `erase(iterator)` that follow the call of `set_parent_target`: the
payload and the node are destroyed, the count is decremented and the root is made black. -/
def erase_tail (m : map K V) (p : ptr) : Option (map K V) := do
  let _ ← (← get_val m p)
  let m ← delete_node m p
  let m := { m with _sz := m._sz - 1 }
  if m._sz ≠ 0 then set_color m m._root black else pure m

end map

/-! ### Concrete states -/

/-- A state with the two end nodes of an empty map at the addresses `0` and `1`. -/
def empty_state : map Nat Nat :=
  { mem := fun a =>
      if a = 0 then some { color := black, val := none, l := none, r := some 1, parent := none }
      else if a = 1 then
        some { color := black, val := none, l := none, r := none, parent := some 0 }
      else none,
    brk := 2, _root := some 0, _cmp_k := fun a b => decide (a < b), _sz := 0 }

/-- A state with a black node at address `0` whose right child is a red node at address `1`. -/
def right_pair : map Nat Nat :=
  { mem := fun a =>
      if a = 0 then
        some { color := black, val := some (1, 10), l := none, r := some 1, parent := none }
      else if a = 1 then
        some { color := red, val := some (2, 20), l := none, r := none, parent := some 0 }
      else none,
    brk := 2, _root := some 0, _cmp_k := fun a b => decide (a < b), _sz := 2 }

end ft

namespace ft
open color_type

/-! ### Reachable states and further observations (specification side) -/

section reach
variable {K V : Type}

/-- The states of a map with the comparator `std::less` that a finite sequence of calls of
`insert`, `operator[]`, `erase` (at a data node, or by key) and `clear` reaches from the
default-constructed map. -/
inductive Reachable [LinearOrder K] [Inhabited V] : map K V → Prop where
  | ctor {m : map K V} : map.mk_default less = some m → Reachable m
  | insert {m m2 : map K V} {x : K × V} {it : ptr} {b : Bool} :
      Reachable m → m.insert x = some (m2, it, b) → Reachable m2
  | index {m m2 : map K V} {k : K} {it : ptr} :
      Reachable m → m.index k = some (m2, it) → Reachable m2
  | erase {m m2 : map K V} {a : Nat} :
      Reachable m → a ∈ m.data_nodes → m.erase (some a) = some m2 → Reachable m2
  | erase_key {m m2 : map K V} {k : K} {n : Nat} :
      Reachable m → m.erase_key k = some (m2, n) → Reachable m2
  | clear {m m2 : map K V} : Reachable m → m.clear = some m2 → Reachable m2

/-- The number of data nodes on the longest path from `p` down to a path end (an end node or
an absent child), read from the memory. -/
def height_rec : Nat → (Nat → Option (node_type K V)) → ptr → Nat
  | 0, _, _ => 0
  | _ + 1, _, none => 0
  | fuel + 1, mem, some a =>
    match mem a with
    | none => 0
    | some n =>
      if n.val.isSome then max (height_rec fuel mem n.l) (height_rec fuel mem n.r) + 1 else 0

/-- The height of the tree of a state, counted in data nodes. -/
def map.height (m : map K V) : Nat := height_rec m.brk m.mem m._root

/-- The number of data nodes on the longest path from the root of a tree down to a path end. -/
def tree.dheight : tree K V → Nat
  | .nil => 0
  | .node _ _ none _ _ => 0
  | .node _ _ (some _) l r => max l.dheight r.dheight + 1

/-- The numbers of black data nodes on the downward paths from `p` to the path ends (end nodes
and absent children), read from the memory. -/
def black_counts_rec : Nat → (Nat → Option (node_type K V)) → ptr → List Nat
  | 0, _, _ => []
  | _ + 1, _, none => [0]
  | fuel + 1, mem, some a =>
    match mem a with
    | none => []
    | some n =>
      if n.val.isSome then
        (black_counts_rec fuel mem n.l ++ black_counts_rec fuel mem n.r).map
          (fun k => if n.color = black then k + 1 else k)
      else [0]

/-- The numbers of black data nodes on the downward paths from the node `p` of a state. -/
def map.black_counts (m : map K V) (p : ptr) : List Nat :=
  black_counts_rec (m.brk + 1) m.mem p

/-- The numbers of black data nodes on the downward paths from the root of a tree. -/
def tree.black_counts : tree K V → List Nat
  | .nil => [0]
  | .node _ _ none _ _ => [0]
  | .node _ c (some _) l r =>
    (l.black_counts ++ r.black_counts).map (fun k => if c = black then k + 1 else k)

/-- The subtrees of a tree: the tree itself and the subtrees of its children. -/
def tree.subtrees : tree K V → List (tree K V)
  | .nil => [.nil]
  | .node a c v l r => .node a c v l r :: (l.subtrees ++ r.subtrees)

end reach

namespace map
variable {K V : Type} [DecidableEq K]

/-- The in-order neighbour that `erase(iterator)` selects for a node `p` with two children: the
leftmost data node of the right subtree if the right child is a data node, else the rightmost
data node of the left subtree. -/
def erase_neighbour (m : map K V) (p : ptr) : Option ptr := do
  let pl ← get_l m p
  let pr ← get_r m p
  if (← get_val m pr).isSome then descend_l (m.brk + 1) m pr
  else descend_r (m.brk + 1) m pl

/-- A sequence of calls of `insert`. -/
def insert_seq (m : map K V) : List (K × V) → Option (map K V)
  | [] => some m
  | x :: xs =>
    match m.insert x with
    | none => none
    | some r => insert_seq r.1 xs

/-- The default-constructed map after a sequence of calls of `insert`. -/
def build (comp : K → K → Bool) (xs : List (K × V)) : Option (map K V) :=
  (mk_default comp).bind (fun m => insert_seq m xs)

end map

/-- A comparator on numbers that is a strict weak ordering but not a total order: two numbers
with the same half are equivalent. -/
def half_less : Nat → Nat → Bool := fun a b => decide (a / 2 < b / 2)

/-- The state after the insertions of the keys `5, 3, 8, 1, 4, 7, 9` into an empty map. -/
def sample7 : map Nat Nat :=
  (map.build less [(5, 50), (3, 30), (8, 80), (1, 10), (4, 40), (7, 70), (9, 90)]).getD
    empty_state

end ft

namespace ft

/-! ### The model of `vector` -/

/-- The number of values of `size_type` (64-bit unsigned). -/
def size_mod : Nat := 2 ^ 64

/-- Addition of `size_type` values. -/
def uadd (a b : Nat) : Nat := (a + b) % size_mod

/-- Subtraction of `size_type` values, which wraps around below zero. -/
def usub (a b : Nat) : Nat := (a + size_mod - b % size_mod) % size_mod

/-- An allocated array: a cell is `none` until an element is constructed in it. -/
abbrev buffer (T : Type) := List (Option T)

/-- The member variables of `vector`: `_ar` is the allocated array (empty for the null pointer),
`_sz` and `_cp` the members of these names. -/
structure vector (T : Type) where
  _ar : buffer T
  _sz : Nat
  _cp : Nat

section vec
variable {T : Type}

/-- Expression `_al.allocate(n)`. -/
def allocate (n : Nat) : buffer T := List.replicate n none

/-- Statement `_al.construct(ar + i, x)`; undefined outside the array. -/
def construct (ar : buffer T) (i : Nat) (x : T) : Option (buffer T) :=
  if i < ar.length then some (ar.set i (some x)) else none

/-- Statement `ar[i] = x`; undefined outside the array. -/
def assign_at (ar : buffer T) (i : Nat) (x : T) : Option (buffer T) :=
  if i < ar.length then some (ar.set i (some x)) else none

/-- Statement `_al.destroy(ar + i)`; undefined outside the array. -/
def destroy (ar : buffer T) (i : Nat) : Option (buffer T) :=
  if i < ar.length then some (ar.set i none) else none

/-- Expression `ar[i]`; undefined outside the array and on a cell without element. -/
def read (ar : buffer T) (i : Nat) : Option T :=
  match ar.get? i with
  | some (some x) => some x
  | _ => none

namespace vector

/-- The macro `NEWCP`. -/
def NEWCP (v : vector T) : Nat := if v._sz = 0 then 1 else (v._sz * 2) % size_mod

/-- The default constructor. -/
def mk_empty : vector T := { _ar := [], _sz := 0, _cp := 0 }

/-- Member `size()`. -/
def size (v : vector T) : Nat := v._sz

/-- Member `capacity()`. -/
def capacity (v : vector T) : Nat := v._cp

/-- The elements `v[0]`, ..., `v[size() - 1]`; undefined if one of them is outside the array
or was not constructed. -/
def contents (v : vector T) : Option (List T) :=
  (List.range v._sz).mapM (fun i => read v._ar i)

/-- The loop `while (i < n) { construct(dst + i + off, src[i]); i++; }` that copies elements
of the old array into the new one. -/
def copy_loop : Nat → buffer T → buffer T → Nat → Nat → Nat → Option (buffer T × Nat)
  | 0, _, _, _, _, _ => none
  | fuel + 1, dst, src, i, n, off =>
    if i < n then do
      let x ← read src i
      let dst ← construct dst (uadd i off) x
      copy_loop fuel dst src (uadd i 1) n off
    else pure (dst, i)

/-- The loop `while (i < n) construct(dst + i++, x)`. -/
def fill_loop : Nat → buffer T → Nat → Nat → T → Option (buffer T × Nat)
  | 0, _, _, _, _ => none
  | fuel + 1, dst, i, n, x =>
    if i < n then do
      let dst ← construct dst i x
      fill_loop fuel dst (uadd i 1) n x
    else pure (dst, i)

/-- Member `push_back`. -/
def push_back (v : vector T) (val : T) : Option (vector T) := do
  let v ← if v._sz ≥ v._cp then (do
      let old_ar := v._ar
      let ar : buffer T := allocate v.NEWCP
      let (ar, _) ← copy_loop (v._sz + 1) ar old_ar 0 v._sz 0
      let ar ← construct ar v._sz val
      pure { v with _ar := ar, _cp := v.NEWCP })
    else (do
      let ar ← construct v._ar v._sz val
      pure { v with _ar := ar })
  pure { v with _sz := uadd v._sz 1 }

/-- Member `pop_back`. -/
def pop_back (v : vector T) : Option (vector T) := do
  let sz := usub v._sz 1
  let ar ← destroy v._ar sz
  pure { v with _ar := ar, _sz := sz }

/-- The loop `while (i > goal) { ar[i] = ar[i - 1]; i--; }` of `insert(pos, value)`. -/
def shift_loop : Nat → buffer T → Nat → Nat → Option (buffer T)
  | 0, _, _, _ => none
  | fuel + 1, ar, i, goal =>
    if i > goal then do
      let x ← read ar (usub i 1)
      let ar ← assign_at ar i x
      shift_loop fuel ar (usub i 1) goal
    else pure ar

/-- Member `insert(pos, value)`, with `goal = pos - begin()`. -/
def insert (v : vector T) (goal : Nat) (value : T) : Option (vector T) := do
  let v ← if v._sz = 0 ∧ v._cp ≠ 0 then (do
      let ar ← construct v._ar goal value
      pure { v with _ar := ar })
    else if v._sz < v._cp then (do
      let i := v._sz
      let ar ← construct v._ar i (← read v._ar (usub i 1))
      let i := usub i 1
      let ar ← shift_loop (v._sz + 1) ar i goal
      let ar ← assign_at ar goal value
      pure { v with _ar := ar })
    else (do
      let xar := v._ar
      let ar : buffer T := allocate v.NEWCP
      let (ar, i) ← copy_loop (v._sz + 1) ar xar 0 goal 0
      let ar ← construct ar i value
      let (ar, _) ← copy_loop (v._sz + 1) ar xar i v._sz 1
      pure { v with _ar := ar, _cp := v.NEWCP })
  pure { v with _sz := uadd v._sz 1 }

/-- The first loop of `_insert_count_noalloc`. -/
def noalloc_loop1 : Nat → vector T → buffer T → Nat → Nat → Nat → Option (buffer T × Nat)
  | 0, _, _, _, _, _ => none
  | fuel + 1, v, ar, new_sz, goal, i =>
    if usub new_sz i ≥ v._sz ∧ usub v._sz i ≥ goal then do
      let x ← read ar (usub v._sz i)
      let ar ← construct ar (usub new_sz i) x
      noalloc_loop1 fuel v ar new_sz goal (uadd i 1)
    else pure (ar, i)

/-- The second loop of `_insert_count_noalloc`. -/
def noalloc_loop2 : Nat → vector T → buffer T → Nat → T → Nat → Option (buffer T × Nat)
  | 0, _, _, _, _, _ => none
  | fuel + 1, v, ar, new_sz, value, i =>
    if usub new_sz i ≥ v._sz then do
      let ar ← construct ar (usub new_sz i) value
      noalloc_loop2 fuel v ar new_sz value (uadd i 1)
    else pure (ar, i)

/-- The third loop of `_insert_count_noalloc`. -/
def noalloc_loop3 : Nat → vector T → buffer T → Nat → Nat → Nat → Nat →
    Option (buffer T × Nat)
  | 0, _, _, _, _, _, _ => none
  | fuel + 1, v, ar, new_sz, goal, count, i =>
    if usub new_sz i ≥ goal ∧ usub new_sz i ≥ uadd goal count then do
      let x ← read ar (usub v._sz i)
      let ar ← assign_at ar (usub new_sz i) x
      if usub new_sz i = 0 then pure (ar, i)
      else noalloc_loop3 fuel v ar new_sz goal count (uadd i 1)
    else pure (ar, i)

/-- The fourth loop of `_insert_count_noalloc`. -/
def noalloc_loop4 : Nat → buffer T → Nat → Nat → T → Nat → Option (buffer T)
  | 0, _, _, _, _, _ => none
  | fuel + 1, ar, new_sz, goal, value, i =>
    if usub new_sz i ≥ goal then do
      let ar ← assign_at ar (usub new_sz i) value
      if usub new_sz i = 0 then pure ar
      else noalloc_loop4 fuel ar new_sz goal value (uadd i 1)
    else pure ar

/-- Member `_insert_count_noalloc`. -/
def _insert_count_noalloc (v : vector T) (goal count : Nat) (value : T) :
    Option (vector T) := do
  let new_sz := uadd v._sz count
  let fuel := v._sz + count + 2
  let (ar, i) ← noalloc_loop1 fuel v v._ar new_sz goal 1
  let (ar, i) ← noalloc_loop2 fuel v ar new_sz value i
  let (ar, i) ← noalloc_loop3 fuel v ar new_sz goal count i
  let ar ← noalloc_loop4 fuel ar new_sz goal value i
  pure { v with _ar := ar }

/-- The last copying loop of `_insert_count_realloc`:
`while (i < new_sz) { construct(ar + i, old_ar[i - count]); i++; }`. -/
def realloc_loop3 : Nat → buffer T → buffer T → Nat → Nat → Nat → Option (buffer T)
  | 0, _, _, _, _, _ => none
  | fuel + 1, ar, old_ar, i, new_sz, count =>
    if i < new_sz then do
      let x ← read old_ar (usub i count)
      let ar ← construct ar i x
      realloc_loop3 fuel ar old_ar (uadd i 1) new_sz count
    else pure ar

/-- Member `_insert_count_realloc`. -/
def _insert_count_realloc (v : vector T) (goal count : Nat) (value : T) :
    Option (vector T) := do
  let new_sz := uadd v._sz count
  let fuel := v._sz + count + 2
  let old_ar := v._ar
  let ar : buffer T := allocate (max v.NEWCP new_sz)
  let (ar, i) ← copy_loop fuel ar old_ar 0 goal 0
  let (ar, i) ← fill_loop fuel ar i (uadd goal count) value
  let ar ← realloc_loop3 fuel ar old_ar i new_sz count
  pure { v with _ar := ar, _cp := max v.NEWCP new_sz }

/-- Member `insert(pos, count, value)`, with `goal = pos - begin()`. -/
def insert_count (v : vector T) (goal count : Nat) (value : T) : Option (vector T) :=
  if count = 0 then pure v
  else if count = 1 then v.insert goal value
  else do
    let new_sz := uadd v._sz count
    let v ← if v._sz = 0 ∧ v._cp ≠ 0 then (do
        let (ar, _) ← fill_loop (new_sz + 1) v._ar 0 new_sz value
        pure { v with _ar := ar })
      else if new_sz < v._cp then v._insert_count_noalloc goal count value
      else v._insert_count_realloc goal count value
    pure { v with _sz := new_sz }

/-- A sequence of calls of `push_back` on the default-constructed vector. -/
def of_list (xs : List T) : Option (vector T) :=
  xs.foldl (fun v x => v.bind (fun w => w.push_back x)) (some mk_empty)

/-- A sequence of `n` calls of `pop_back`. -/
def pop_n : Nat → vector T → Option (vector T)
  | 0, v => some v
  | n + 1, v => v.pop_back.bind (pop_n n)

end vector

end vec

end ft

namespace ft
open color_type

/-! ### Iterators, ranges and bounds -/

namespace map
variable {K V : Type} [DecidableEq K]

/-- Modelled from the spec: the walk of the iterator increment to the leftmost descendant,
"descend to its leftmost data/sentinel descendant". -/
def leftmost : Nat → map K V → ptr → Option ptr
  | 0, _, _ => none
  | fuel + 1, m, p => do
    let l ← get_l m p
    if l ≠ none then leftmost fuel m l else pure p

/-- Modelled from the spec: the walk of the iterator decrement to the rightmost descendant,
the mirror of `leftmost`. -/
def rightmost : Nat → map K V → ptr → Option ptr
  | 0, _, _ => none
  | fuel + 1, m, p => do
    let r ← get_r m p
    if r ≠ none then rightmost fuel m r else pure p

/-- Modelled from the spec: the ascent of the iterator increment, "ascend via parent links
until moving up from a left child (the resulting parent is the successor)"; a node without
parent has no successor. -/
def climb_next : Nat → map K V → ptr → Option ptr
  | 0, _, _ => none
  | fuel + 1, m, p => do
    let par ← get_parent m p
    if par = none then none
    else if (← get_l m par) = p then pure par
    else climb_next fuel m par

/-- Modelled from the spec: the ascent of the iterator decrement, the mirror of
`climb_next`. -/
def climb_prev : Nat → map K V → ptr → Option ptr
  | 0, _, _ => none
  | fuel + 1, m, p => do
    let par ← get_parent m p
    if par = none then none
    else if (← get_r m par) = p then pure par
    else climb_prev fuel m par

/-- Modelled from the spec: the iterator increment, "if a right child exists, descend to its
leftmost data/sentinel descendant; else ascend via parent links until moving up from a left
child". -/
def it_next (m : map K V) (p : ptr) : Option ptr := do
  let r ← get_r m p
  if r ≠ none then leftmost (m.brk + 1) m r else climb_next (m.brk + 1) m p

/-- Modelled from the spec: the iterator decrement, "the mirror operation" of the
increment. -/
def it_prev (m : map K V) (p : ptr) : Option ptr := do
  let l ← get_l m p
  if l ≠ none then rightmost (m.brk + 1) m l else climb_prev (m.brk + 1) m p

/-- The iterator after `n` increments. -/
def it_advance (m : map K V) : Nat → ptr → Option ptr
  | 0, p => some p
  | n + 1, p => (it_next m p).bind (it_advance m n)

/-- The loop of `erase(iterator first, iterator last)`. -/
def erase_range_loop : Nat → map K V → ptr → ptr → Option (map K V)
  | 0, _, _, _ => none
  | fuel + 1, m, first, last =>
    if first ≠ last then do
      let tmp ← it_next m first
      let m ← m.erase first
      erase_range_loop fuel m tmp last
    else pure m

/-- Member `erase(iterator first, iterator last)`. -/
def erase_range (m : map K V) (first last : ptr) : Option (map K V) :=
  erase_range_loop (m._sz + 1) m first last

/-- The loop `while (it != end() && _cmp_k(it->first, k)) ++it` of `lower_bound`. -/
def lower_bound_loop : Nat → map K V → ptr → K → Option ptr
  | 0, _, _, _ => none
  | fuel + 1, m, it, k => do
    if it ≠ (← m.end_) then
      let kv ← (← get_val m it)
      if m._cmp_k kv.1 k then (do
        let nx ← it_next m it
        lower_bound_loop fuel m nx k)
      else pure it
    else pure it

/-- Member `lower_bound`. -/
def lower_bound (m : map K V) (k : K) : Option ptr := do
  lower_bound_loop (m._sz + 1) m (← m.begin) k

/-- The loop `while (it != end() && !_cmp_k(k, it->first)) ++it` of `upper_bound`. -/
def upper_bound_loop : Nat → map K V → ptr → K → Option ptr
  | 0, _, _, _ => none
  | fuel + 1, m, it, k => do
    if it ≠ (← m.end_) then
      let kv ← (← get_val m it)
      if ¬ m._cmp_k k kv.1 then (do
        let nx ← it_next m it
        upper_bound_loop fuel m nx k)
      else pure it
    else pure it

/-- Member `upper_bound`. -/
def upper_bound (m : map K V) (k : K) : Option ptr := do
  upper_bound_loop (m._sz + 1) m (← m.begin) k

/-- Member `equal_range`. -/
def equal_range (m : map K V) (k : K) : Option (ptr × ptr) := do
  let lo ← m.lower_bound k
  let hi ← m.upper_bound k
  pure (lo, hi)

end map

end ft

namespace ft
open color_type

/-! ### Assignment of a map to itself, and the remaining members of `vector` -/

namespace map
variable {K V : Type} [DecidableEq K]

/-- The loop `while (first != last) { insert(*first); ++first; }` of `insert(first, last)`,
for iterators that point into the map itself. -/
def insert_range_loop : Nat → map K V → ptr → ptr → Option (map K V)
  | 0, _, _, _ => none
  | fuel + 1, m, first, last =>
    if first ≠ last then do
      let x ← (← get_val m first)
      let (m, _, _) ← m.insert x
      let nx ← it_next m first
      insert_range_loop fuel m nx last
    else pure m

/-- Member `insert(first, last)`, for iterators that point into the map itself. -/
def insert_range (m : map K V) (first last : ptr) : Option (map K V) :=
  insert_range_loop (m._sz + 1) m first last

/-- Member `operator=` called with the map itself as `other`: `clear()` runs first, then
`other.begin()` and `other.end()` are taken from the same, now cleared, object. -/
def assign_self (m : map K V) : Option (map K V) := do
  let m ← m.clear
  let first ← m.begin
  let last ← m.end_
  m.insert_range first last

/-- The states and nodes `k` with which the body of the `while` loop of `_insert_fix` is
entered, in the order of the iterations. -/
def _insert_fix_iters : Nat → map K V → ptr → Option (List (map K V × ptr))
  | 0, _, _ => none
  | fuel + 1, m, k => do
    let kp ← get_parent m k
    if (← is_red m kp) then
      let (m2, k2) ← _insert_fix_body m k
      if k2 = m2._root then pure [(m, k)]
      else (do
        let rest ← _insert_fix_iters fuel m2 k2
        pure ((m, k) :: rest))
    else pure []

/-! ### The invocations of `fixDoubleBlack` that `erase` makes -/

/-- An invocation of `fixDoubleBlack`: the state in which it is made and the arguments `x`,
`parent` and `sibling`. -/
abbrev fix_call (K V : Type) : Type := map K V × ptr × ptr × ptr

/-- The invocation is made with `x == _root`, so that it returns at once. -/
def at_root (c : fix_call K V) : Bool := decide (c.2.1 = c.1._root)

/-- The argument `sibling` of the invocation is a data node. -/
def sibling_is_data (c : fix_call K V) : Bool :=
  match c.2.2.2 with
  | none => false
  | some a => (c.1.payload a).isSome

/-- One turn of `fixDoubleBlack`, which is its body up to the self-call: the result is the
state returned if the turn returns, and the invocation to make otherwise. -/
def fixDoubleBlack_step (m : map K V) (x parent sibling : ptr) :
    Option (map K V ⊕ fix_call K V) :=
  if x = m._root then pure (.inl m)
  else if sibling = none then do
    pure (.inr (m, parent, ← get_parent m parent, ← ft.sibling m parent))
  else do
    if (← get_color m sibling) = red then
      let m ← set_color m parent red
      let m ← set_color m sibling black
      if (← isOnLeft m sibling) then
        let m ← _r_rotate m parent
        pure (.inr (m, x, parent, ← get_l m parent))
      else
        let m ← _l_rotate m parent
        pure (.inr (m, x, parent, ← get_r m parent))
    else
      if (← hasRedChild m sibling) then (do
        let m ← fixDoubleBlack_red_child m parent sibling
        pure (.inl m))
      else
        let m ← set_color m sibling red
        if (← get_color m parent) = red then (do
          let m ← set_color m parent black
          pure (.inl m))
        else pure (.inr (m, parent, ← get_parent m parent, ← ft.sibling m parent))

/-- The invocations of `fixDoubleBlack` that the invocation with the given state and arguments
gives rise to, itself included, in order. -/
def fixDoubleBlack_calls : Nat → map K V → ptr → ptr → ptr → Option (List (fix_call K V))
  | 0, _, _, _, _ => none
  | fuel + 1, m, x, parent, sibling => do
    match (← fixDoubleBlack_step m x parent sibling) with
    | .inl _ => pure [(m, x, parent, sibling)]
    | .inr c => (do
      let rest ← fixDoubleBlack_calls fuel c.1 c.2.1 c.2.2.1 c.2.2.2
      pure ((m, x, parent, sibling) :: rest))

/-- The invocation of `fixDoubleBlack` in `set_parent_target`, selected by `isleft`. -/
def set_parent_target_fix_call (m : map K V) (p : ptr) (isleft : Bool) :
    Option (fix_call K V) := do
  let pp ← get_parent m p
  if isleft then pure (m, ← get_l m pp, pp, ← get_r m pp)
  else pure (m, ← get_r m pp, pp, ← get_l m pp)

/-- Member `set_parent_target` up to its call of `fixDoubleBlack`: the result is the state
returned if no call is made, and the invocation otherwise. -/
def set_parent_target_pre (m : map K V) (p target : ptr) : Option (map K V ⊕ fix_call K V) := do
  let isleft ← isOnLeft m p
  let pp ← get_parent m p
  let m ← if pp ≠ none then (if isleft then set_l m pp target else set_r m pp target)
    else pure { m with _root := target }
  if target ≠ none then
    let m ← set_parent m target (← get_parent m p)
    if (← get_color m p) = black then
      let tb ← if (← get_color m target) = black then
          (do pure (decide ((← get_parent m target) ≠ none)))
        else pure false
      if tb then (do pure (.inr (← set_parent_target_fix_call m p isleft)))
      else (do pure (.inl (← set_color m target black)))
    else pure (.inl m)
  else if (← get_color m p) = black then
    (do pure (.inr (← set_parent_target_fix_call m p isleft)))
  else pure (.inl m)

/-- The invocations of `fixDoubleBlack` that a call of `set_parent_target` gives rise to. -/
def set_parent_target_calls (m : map K V) (p target : ptr) : Option (List (fix_call K V)) := do
  match (← set_parent_target_pre m p target) with
  | .inl _ => pure []
  | .inr c => fixDoubleBlack_calls (2 * c.1.brk + 2) c.1 c.2.1 c.2.2.1 c.2.2.2

/-- The invocations of `fixDoubleBlack` that `erase(iterator)` gives rise to, in order: the
function follows `erase_rec` up to the call of `set_parent_target`. -/
def erase_rec_calls : Nat → map K V → ptr → Option (List (fix_call K V))
  | 0, _, _ => none
  | fuel + 1, m, p =>
    if m._sz = 1 then pure []
    else do
      let pl ← get_l m p
      let pr ← get_r m p
      if pl ≠ none ∧ pr ≠ none then
        let tmp ← (do
          if (← get_val m pr).isSome then descend_l (m.brk + 1) m pr
          else descend_r (m.brk + 1) m pl)
        let m ← _swap_nodes m p tmp
        erase_rec_calls fuel m p
      else
        if pl = none ∧ pr = none then set_parent_target_calls m p none
        else if pl = none ∧ pr ≠ none then set_parent_target_calls m p pr
        else if pl ≠ none ∧ pr = none then set_parent_target_calls m p pl
        else pure []

/-- The invocations of `fixDoubleBlack` that `erase(pos)` gives rise to. -/
def erase_calls (m : map K V) (pos : ptr) : Option (List (fix_call K V)) :=
  erase_rec_calls (m.brk + 1) m pos

end map

section vec
variable {T : Type}

namespace vector

/-- The loop `for (i = n; i < _sz; i++) destroy(_ar + i)` of `resize` and `clear`. -/
def destroy_loop : Nat → buffer T → Nat → Nat → Option (buffer T)
  | 0, _, _, _ => none
  | fuel + 1, ar, i, sz =>
    if i < sz then do
      let ar ← destroy ar i
      destroy_loop fuel ar (uadd i 1) sz
    else pure ar

/-- Member `clear()`. -/
def clear (v : vector T) : Option (vector T) := do
  let ar ← destroy_loop (v._sz + 1) v._ar 0 v._sz
  pure { v with _ar := ar, _sz := 0 }

/-- Member `resize(n, val)`; `end() - begin()` is `_sz`. -/
def resize (v : vector T) (n : Nat) (val : T) : Option (vector T) := do
  let v ← if n < v._sz then (do
      let ar ← destroy_loop (v._sz + 1) v._ar n v._sz
      pure { v with _ar := ar })
    else if v._sz < n then v.insert_count v._sz (usub n v._sz) val
    else pure v
  pure { v with _sz := n }

end vector

end vec

/-! ### Concrete states -/

/-- The state after the insertions of the keys `5, 3, 8, 1`. -/
def sample4 : map Nat Nat :=
  (map.build less [(5, 50), (3, 30), (8, 80), (1, 10)]).getD empty_state

/-- The state after the insertions of the keys `5, 3, 8, 1` and the erasure of the node of
key `1` (address `5`): three black data nodes, key `5` at address `2` (the root), key `3` at
address `3` and key `8` at address `4`. -/
def black3 : map Nat Nat := (sample4.erase (some 5)).getD empty_state

end ft

namespace ft
open color_type

/-! ### Sequences of operations, and what they do to the in-order sequence (specification
side) -/

section listspec
variable {K V : Type}

/-- The sorted sequence of pairs with the pair `x` added at its sorted place, unless a pair
with the key of `x` is present. -/
def list_insert [LinearOrder K] (l : List (K × V)) (x : K × V) : List (K × V) :=
  if x.1 ∈ l.map Prod.fst then l
  else l.filter (fun y => decide (y.1 < x.1)) ++ x :: l.filter (fun y => decide (x.1 < y.1))

/-- The sequence of pairs without the pairs of key `k`. -/
def list_erase [DecidableEq K] (l : List (K × V)) (k : K) : List (K × V) :=
  l.filter (fun y => decide (y.1 ≠ k))

/-- A call of `insert`, of `erase(key)` or of `clear`. -/
inductive map_op (K V : Type) where
  | insert (x : K × V) : map_op K V
  | erase_key (k : K) : map_op K V
  | clear : map_op K V

/-- What an operation does to the sorted sequence of pairs. -/
def list_apply_op [LinearOrder K] (l : List (K × V)) : map_op K V → List (K × V)
  | .insert x => list_insert l x
  | .erase_key k => list_erase l k
  | .clear => []

/-- What a sequence of operations does to the sorted sequence of pairs. -/
def list_run_ops [LinearOrder K] : List (map_op K V) → List (K × V) → List (K × V)
  | [], l => l
  | o :: os, l => list_run_ops os (list_apply_op l o)

end listspec

namespace map
variable {K V : Type} [DecidableEq K]

/-- The state after an operation. -/
def apply_op (m : map K V) : map_op K V → Option (map K V)
  | .insert x => (m.insert x).map (fun r => r.1)
  | .erase_key k => (m.erase_key k).map (fun r => r.1)
  | .clear => m.clear

/-- The state after a sequence of operations. -/
def run_ops : List (map_op K V) → map K V → Option (map K V)
  | [], m => some m
  | o :: os, m => (m.apply_op o).bind (run_ops os)

/-- The assignment `ref = v` through the reference that `operator[]` returns, which refers to
the member `second` of the payload of the node `it`. -/
def write_second (m : map K V) (it : ptr) (v : V) : Option (map K V) := do
  let kv ← (← get_val m it)
  store m it (fun n => { n with val := some (kv.1, v) })

/-- The tree of the state is the skeleton of an empty map: a black root without payload,
without parent and without left child, whose right child is a black childless node without
payload; these are the only nodes and the count is zero. -/
def is_skeleton (m : map K V) : Prop :=
  ∃ a b, m._root = some a ∧
    m.mem a = some { color := black, val := none, l := none, r := some b, parent := none } ∧
    m.mem b = some { color := black, val := none, l := none, r := none, parent := some a } ∧
    m.nodes = [a, b] ∧ m.size = 0

end map

/-! ### Two maps in one free store -/

/-- Two maps `a` and `b` that live in the same free store: the store `mem`/`brk` and the
member variables of each map. -/
structure map_pair (K V : Type) where
  mem : Nat → Option (node_type K V)
  brk : Nat
  a_root : ptr
  a_cmp_k : K → K → Bool
  a_sz : Nat
  b_root : ptr
  b_cmp_k : K → K → Bool
  b_sz : Nat

namespace map_pair
variable {K V : Type}

/-- The map `a` of the pair, as a state of its own. -/
def fst (w : map_pair K V) : map K V :=
  { mem := w.mem, brk := w.brk, _root := w.a_root, _cmp_k := w.a_cmp_k, _sz := w.a_sz }

/-- The map `b` of the pair, as a state of its own. -/
def snd (w : map_pair K V) : map K V :=
  { mem := w.mem, brk := w.brk, _root := w.b_root, _cmp_k := w.b_cmp_k, _sz := w.b_sz }

/-- Member `swap`, called as `a.swap(b)`: `_root` and `_sz` of the two maps are exchanged
(`_cmp_k` is a `const` member and stays). -/
def swap (w : map_pair K V) : map_pair K V :=
  let tmp_root := w.a_root
  let tmp_sz := w.a_sz
  let w := { w with a_root := w.b_root }
  let w := { w with a_sz := w.b_sz }
  let w := { w with b_root := tmp_root }
  { w with b_sz := tmp_sz }

end map_pair

/-- The state after the insertion of the key `5`: a map of one element, at address `2`. -/
def sample1 : map Nat Nat := (map.build less [(5, 50)]).getD empty_state

end ft

namespace ft
open color_type

/-! ### Bounds by descent, reverse iterators, copies and relational operators -/

section scanspec
variable {K V : Type}

/-- The address of the first entry of a sequence of nodes whose key does not satisfy `p`, and
`d` when every key satisfies `p` (specification side of the scans of `lower_bound` and
`upper_bound`; entries without payload are passed over). -/
def first_failing (p : K → Bool) : List (Nat × Option (K × V)) → Nat → Nat
  | [], d => d
  | (a, some kv) :: es, d => if p kv.1 then first_failing p es d else a
  | (_, none) :: es, d => first_failing p es d

end scanspec

/-- Class `reverse_iterator` (`iterators.hpp`) over the iterators of `map`: the wrapped base
iterator. -/
structure reverse_iterator where
  _base : ptr

namespace map
variable {K V : Type} [DecidableEq K]

/-- The tree descent that the specification prescribes for `lower_bound` ("using tree descent
guided by the comparator"), from the node `n` with the candidate `best`: an absent node or an
end node ends the descent with the candidate; at a data node whose key is less than `k` the
descent goes on to the right; at any other data node, that node becomes the candidate and the
descent goes on to the left. -/
def lower_bound_descent_rec : Nat → map K V → ptr → ptr → K → Option ptr
  | 0, _, _, _, _ => none
  | fuel + 1, m, n, best, k =>
    if n = none then pure best
    else do
      match (← get_val m n) with
      | none => pure best
      | some nv =>
        if m._cmp_k nv.1 k then lower_bound_descent_rec fuel m (← get_r m n) best k
        else lower_bound_descent_rec fuel m (← get_l m n) n k

/-- The `lower_bound` of the specification: the descent from the root, with `end()` as the
first candidate. -/
def lower_bound_descent (m : map K V) (k : K) : Option ptr := do
  lower_bound_descent_rec (m.brk + 1) m m._root (← m.end_) k

/-- The tree descent that the specification prescribes for `upper_bound`: as
`lower_bound_descent_rec`, with "the key of the node is not greater than `k`" in the place of
"the key of the node is less than `k`". -/
def upper_bound_descent_rec : Nat → map K V → ptr → ptr → K → Option ptr
  | 0, _, _, _, _ => none
  | fuel + 1, m, n, best, k =>
    if n = none then pure best
    else do
      match (← get_val m n) with
      | none => pure best
      | some nv =>
        if ¬ m._cmp_k k nv.1 then upper_bound_descent_rec fuel m (← get_r m n) best k
        else upper_bound_descent_rec fuel m (← get_l m n) n k

/-- The `upper_bound` of the specification: the descent from the root, with `end()` as the
first candidate. -/
def upper_bound_descent (m : map K V) (k : K) : Option ptr := do
  upper_bound_descent_rec (m.brk + 1) m m._root (← m.end_) k

/-- The elements that a loop `for (it = first; it != last; ++it)` visits, read with `*it`. -/
def range_loop : Nat → map K V → ptr → ptr → Option (List (K × V))
  | 0, _, _, _ => none
  | fuel + 1, m, first, last =>
    if first ≠ last then do
      let x ← (← get_val m first)
      let nx ← it_next m first
      let rest ← range_loop fuel m nx last
      pure (x :: rest)
    else pure []

/-- The elements of the half-open range `[first, last)` of a map. -/
def range (m : map K V) (first last : ptr) : Option (List (K × V)) :=
  range_loop (m._sz + 1) m first last

/-! #### Reverse iterators (`iterators.hpp`) -/

/-- Member `reverse_iterator::operator*`: `iterator_type ret(_base); return *(--ret);`. -/
def rev_deref (m : map K V) (r : reverse_iterator) : Option (K × V) := do
  let ret ← it_prev m r._base
  (← get_val m ret)

/-- Member `reverse_iterator::operator++`: `--_base; return *this;`. -/
def rev_inc (m : map K V) (r : reverse_iterator) : Option reverse_iterator := do
  pure { _base := (← it_prev m r._base) }

/-- Member `rbegin()`: `reverse_iterator(end())`. -/
def rbegin (m : map K V) : Option reverse_iterator := do
  pure { _base := (← m.end_) }

/-- Member `rend()`: `reverse_iterator(begin())`. -/
def rend (m : map K V) : Option reverse_iterator := do
  pure { _base := (← m.begin) }

/-- The reverse iterator after `n` increments. -/
def rev_advance (m : map K V) : Nat → reverse_iterator → Option reverse_iterator
  | 0, r => some r
  | n + 1, r => (rev_inc m r).bind (rev_advance m n)

/-- The elements that a loop `for (r = first; r != last; ++r)` over reverse iterators visits,
read with `*r`; `operator!=` of reverse iterators compares the base iterators. -/
def rev_loop : Nat → map K V → reverse_iterator → reverse_iterator → Option (List (K × V))
  | 0, _, _, _ => none
  | fuel + 1, m, first, last =>
    if first._base ≠ last._base then do
      let x ← rev_deref m first
      let nx ← rev_inc m first
      let rest ← rev_loop fuel m nx last
      pure (x :: rest)
    else pure []

/-- The elements from `rbegin()` to `rend()`. -/
def rev_list (m : map K V) : Option (List (K × V)) := do
  rev_loop (m._sz + 1) m (← m.rbegin) (← m.rend)

/-! #### Copies: a second map, with nodes of its own -/

/-- The loop `while (first != last) { insert(*first); ++first; }` of `insert(first, last)`,
for iterators that point into another map `src`; the two maps own disjoint sets of nodes, so
`src` is a state of its own, which the loop only reads. -/
def insert_from_loop : Nat → map K V → map K V → ptr → ptr → Option (map K V)
  | 0, _, _, _, _ => none
  | fuel + 1, src, m, first, last =>
    if first ≠ last then do
      let x ← (← get_val src first)
      let (m, _, _) ← m.insert x
      let nx ← it_next src first
      insert_from_loop fuel src m nx last
    else pure m

/-- Member `insert(first, last)`, for iterators that point into another map `src`. -/
def insert_from (m src : map K V) (first last : ptr) : Option (map K V) :=
  insert_from_loop (src._sz + 1) src m first last

/-- The copy constructor `map(const map & cpy)`: the members are initialised (`_cmp_k` from
`cpy`), then `_insert_ends(); insert(cpy.begin(), cpy.end());`. -/
def copy_ctor (cpy : map K V) : Option (map K V) := do
  let m ← _insert_ends
    { mem := fun _ => none, brk := 0, _root := none, _cmp_k := cpy._cmp_k, _sz := 0 }
  m.insert_from cpy (← cpy.begin) (← cpy.end_)

/-- Member `operator=`, called with another map as `other`:
`clear(); insert(other.begin(), other.end());`. -/
def assign (m other : map K V) : Option (map K V) := do
  let m ← m.clear
  m.insert_from other (← other.begin) (← other.end_)

end map

/-! #### Relational operators -/

section relational
variable {K V : Type}

/-- Modelled from the spec: `operator!=` of the two-element tuple type (`pair.hpp` is not in
the sources): two pairs differ when their first or their second components differ. -/
def pair_ne [DecidableEq K] [DecidableEq V] (x y : K × V) : Bool :=
  decide (x.1 ≠ y.1) || decide (x.2 ≠ y.2)

/-- Modelled from the spec: `operator<` of the two-element tuple type, the lexicographic
order on the components:
`lhs.first < rhs.first || (!(rhs.first < lhs.first) && lhs.second < rhs.second)`. -/
def pair_lt [LinearOrder K] [LinearOrder V] (x y : K × V) : Bool :=
  decide (x.1 < y.1) || (!decide (y.1 < x.1) && decide (x.2 < y.2))

/-- Lexicographic comparison of two sequences of pairs (specification side). -/
def lex_lt [LinearOrder K] [LinearOrder V] : List (K × V) → List (K × V) → Bool
  | [], [] => false
  | [], _ :: _ => true
  | _ :: _, [] => false
  | x :: xs, y :: ys =>
    if pair_lt x y then true else if pair_lt y x then false else lex_lt xs ys

end relational

namespace map
variable {K V : Type} [DecidableEq K]

/-- The loop `while (lit != lhs.end()) if (*lit++ != *rit++) return false;` of
`operator==`. -/
def eq_loop [DecidableEq V] : Nat → map K V → map K V → ptr → ptr → Option Bool
  | 0, _, _, _, _ => none
  | fuel + 1, lhs, rhs, lit, rit => do
    if lit ≠ (← lhs.end_) then
      let x ← (← get_val lhs lit)
      let lit2 ← it_next lhs lit
      let y ← (← get_val rhs rit)
      let rit2 ← it_next rhs rit
      if pair_ne x y then pure false else eq_loop fuel lhs rhs lit2 rit2
    else pure true

/-- The non-member `operator==` of `map`. -/
def op_eq [DecidableEq V] (lhs rhs : map K V) : Option Bool :=
  if lhs.size ≠ rhs.size then pure false
  else do
    eq_loop (lhs._sz + 1) lhs rhs (← lhs.begin) (← rhs.begin)

/-- The non-member `operator!=` of `map`: `!(lhs == rhs)`. -/
def op_ne [DecidableEq V] (lhs rhs : map K V) : Option Bool := do
  pure (!(← op_eq lhs rhs))

end map

namespace map
variable {K V : Type} [LinearOrder K] [LinearOrder V]

/-- Modelled from the spec: the loop of `ft::lexicographical_compare` (`comparisons.hpp` is not
in the sources), "lexicographic comparison of in-order sequences":
`for (; first1 != last1 && first2 != last2; ++first1, ++first2)
{ if (*first1 < *first2) return true; if (*first2 < *first1) return false; }
return first1 == last1 && first2 != last2;`. -/
def lexicographical_compare_loop : Nat → map K V → map K V → ptr → ptr → ptr → ptr → Option Bool
  | 0, _, _, _, _, _, _ => none
  | fuel + 1, lhs, rhs, first1, last1, first2, last2 =>
    if first1 ≠ last1 ∧ first2 ≠ last2 then do
      let x ← (← get_val lhs first1)
      let y ← (← get_val rhs first2)
      if pair_lt x y then pure true
      else if pair_lt y x then pure false
      else do
        let n1 ← it_next lhs first1
        let n2 ← it_next rhs first2
        lexicographical_compare_loop fuel lhs rhs n1 last1 n2 last2
    else pure (decide (first1 = last1) && decide (first2 ≠ last2))

/-- The non-member `operator<` of `map`:
`ft::lexicographical_compare(lhs.begin(), lhs.end(), rhs.begin(), rhs.end())`. -/
def op_lt (lhs rhs : map K V) : Option Bool := do
  let first1 ← lhs.begin
  let last1 ← lhs.end_
  let first2 ← rhs.begin
  let last2 ← rhs.end_
  lexicographical_compare_loop (lhs._sz + 1) lhs rhs first1 last1 first2 last2

/-- The non-member `operator>` of `map`: `!(lhs == rhs) && !(lhs < rhs)`. -/
def op_gt (lhs rhs : map K V) : Option Bool := do
  if (← op_eq lhs rhs) then pure false
  else pure (!(← op_lt lhs rhs))

/-- The non-member `operator<=` of `map`: `(lhs == rhs) || (lhs < rhs)`. -/
def op_le (lhs rhs : map K V) : Option Bool := do
  if (← op_eq lhs rhs) then pure true
  else op_lt lhs rhs

/-- The non-member `operator>=` of `map`: `(lhs == rhs) || !(lhs < rhs)`. -/
def op_ge (lhs rhs : map K V) : Option Bool := do
  if (← op_eq lhs rhs) then pure true
  else pure (!(← op_lt lhs rhs))

end map

/-- The map with the keys `1`, `3`, `4`, `5`, `7`, `8`, `9`, inserted in increasing order. -/
def sample7b : map Nat Nat :=
  (map.build less [(1, 10), (3, 30), (4, 40), (5, 50), (7, 70), (8, 80), (9, 90)]).getD
    empty_state

/-- The map with the keys `3` and `5`. -/
def sample2 : map Nat Nat := (map.build less [(3, 30), (5, 50)]).getD empty_state

end ft

namespace ft
open color_type

section basics
variable {K V : Type}

/-! ### Sequencing -/

@[simp] theorem bind_eq_ub {α β : Type} (x : Option α) (f : α → Option β) :
    (x >>= f) = ub_bind x f := rfl

@[simp] theorem pure_eq_some {α : Type} (a : α) : (pure a : Option α) = some a := rfl

@[simp] theorem ub_bind_some {α β : Type} (a : α) (f : α → Option β) :
    ub_bind (some a) f = f a := rfl

@[simp] theorem ub_bind_none {α β : Type} (f : α → Option β) :
    ub_bind none f = none := rfl

theorem ub_bind_eq_some {α β : Type} {x : Option α} {f : α → Option β} {b : β} :
    ub_bind x f = some b ↔ ∃ a, x = some a ∧ f a = some b := by
  cases x <;> simp

/-! ### Reading and writing memory -/

@[simp] theorem deref_some (m : map K V) (a : Nat) : deref m (some a) = m.mem a := rfl

@[simp] theorem deref_none (m : map K V) : deref m none = none := rfl

theorem get_color_eq {m : map K V} {a : Nat} {n : node_type K V} (h : m.mem a = some n) :
    get_color m (some a) = some n.color := by simp [get_color, h]

theorem get_val_eq {m : map K V} {a : Nat} {n : node_type K V} (h : m.mem a = some n) :
    get_val m (some a) = some n.val := by simp [get_val, h]

theorem get_l_eq {m : map K V} {a : Nat} {n : node_type K V} (h : m.mem a = some n) :
    get_l m (some a) = some n.l := by simp [get_l, h]

theorem get_r_eq {m : map K V} {a : Nat} {n : node_type K V} (h : m.mem a = some n) :
    get_r m (some a) = some n.r := by simp [get_r, h]

theorem get_parent_eq {m : map K V} {a : Nat} {n : node_type K V} (h : m.mem a = some n) :
    get_parent m (some a) = some n.parent := by simp [get_parent, h]

theorem store_eq {m : map K V} {a : Nat} {n : node_type K V} (h : m.mem a = some n)
    (f : node_type K V → node_type K V) :
    store m (some a) f = some { m with mem := Function.update m.mem a (some (f n)) } := by
  simp [store, h]

/-! ### Trees and paths -/

@[simp] theorem tree.elems_nil : (tree.nil : tree K V).elems = [] := rfl

@[simp] theorem tree.elems_node (a : Nat) (c : color_type) (v : Option (K × V))
    (l r : tree K V) : (tree.node a c v l r).elems = l.elems ++ (a, v) :: r.elems := rfl

@[simp] theorem tree.addrs_nil : (tree.nil : tree K V).addrs = [] := rfl

@[simp] theorem tree.addrs_node (a : Nat) (c : color_type) (v : Option (K × V))
    (l r : tree K V) : (tree.node a c v l r).addrs = l.addrs ++ a :: r.addrs := by
  simp [tree.addrs]

@[simp] theorem tree.top_nil : (tree.nil : tree K V).top = none := rfl

@[simp] theorem tree.top_node (a : Nat) (c : color_type) (v : Option (K × V))
    (l r : tree K V) : (tree.node a c v l r).top = some a := rfl

theorem tree.top_mem_addrs {t : tree K V} {a : Nat} (h : t.top = some a) : a ∈ t.addrs := by
  cases t with
  | nil => simp at h
  | node b c v l r => simp at h; simp [h]

theorem tree.top_eq_none {t : tree K V} : t.top = none ↔ t = .nil := by
  cases t <;> simp

@[simp] theorem ptop_nil : ptop ([] : List (frame K V)) = none := rfl

@[simp] theorem ptop_cons (f : frame K V) (q : List (frame K V)) :
    ptop (f :: q) = some f.addr := rfl

@[simp] theorem frame.addr_L (a : Nat) (c : color_type) (v : Option (K × V)) (r : tree K V) :
    (frame.L a c v r).addr = a := rfl

@[simp] theorem frame.addr_R (a : Nat) (c : color_type) (v : Option (K × V)) (l : tree K V) :
    (frame.R a c v l).addr = a := rfl

@[simp] theorem fill_nil (t : tree K V) : fill [] t = t := rfl

@[simp] theorem fill_L (a : Nat) (c : color_type) (v : Option (K × V)) (r : tree K V)
    (p : List (frame K V)) (t : tree K V) :
    fill (.L a c v r :: p) t = fill p (.node a c v t r) := rfl

@[simp] theorem fill_R (a : Nat) (c : color_type) (v : Option (K × V)) (l : tree K V)
    (p : List (frame K V)) (t : tree K V) :
    fill (.R a c v l :: p) t = fill p (.node a c v l t) := rfl

theorem fill_append (p q : List (frame K V)) (t : tree K V) :
    fill (p ++ q) t = fill q (fill p t) := by
  induction p generalizing t with
  | nil => rfl
  | cons f p ih => cases f <;> simp [ih]

theorem fill_elems (p : List (frame K V)) (t : tree K V) :
    (fill p t).elems = pbefore p ++ t.elems ++ pafter p := by
  induction p generalizing t with
  | nil => simp [pbefore, pafter]
  | cons f p ih => cases f <;> simp [ih, pbefore, pafter]

theorem fill_addrs (p : List (frame K V)) (t : tree K V) :
    (fill p t).addrs = (pbefore p).map Prod.fst ++ t.addrs ++ (pafter p).map Prod.fst := by
  simp [tree.addrs, fill_elems]

theorem paddrs_L (a : Nat) (c : color_type) (v : Option (K × V)) (r : tree K V)
    (p : List (frame K V)) :
    paddrs (.L a c v r :: p) = (pbefore p).map Prod.fst ++ a :: r.addrs ++
      (pafter p).map Prod.fst := by
  simp [paddrs, pbefore, pafter, tree.addrs]

theorem paddrs_R (a : Nat) (c : color_type) (v : Option (K × V)) (l : tree K V)
    (p : List (frame K V)) :
    paddrs (.R a c v l :: p) = (pbefore p).map Prod.fst ++ l.addrs ++ a ::
      (pafter p).map Prod.fst := by
  simp [paddrs, pbefore, pafter, tree.addrs]

theorem mem_paddrs_L {a : Nat} {c : color_type} {v : Option (K × V)} {r : tree K V}
    {p : List (frame K V)} {b : Nat} :
    b ∈ paddrs (.L a c v r :: p) ↔ b = a ∨ b ∈ r.addrs ∨ b ∈ paddrs p := by
  rw [paddrs_L]
  simp only [paddrs, List.map_append, List.mem_append, List.mem_cons]; tauto

theorem mem_paddrs_R {a : Nat} {c : color_type} {v : Option (K × V)} {l : tree K V}
    {p : List (frame K V)} {b : Nat} :
    b ∈ paddrs (.R a c v l :: p) ↔ b = a ∨ b ∈ l.addrs ∨ b ∈ paddrs p := by
  rw [paddrs_R]
  simp only [paddrs, List.map_append, List.mem_append, List.mem_cons]; tauto

@[simp] theorem paddrs_nil : paddrs ([] : List (frame K V)) = [] := rfl

theorem mem_fill_addrs {p : List (frame K V)} {t : tree K V} {b : Nat} :
    b ∈ (fill p t).addrs ↔ b ∈ t.addrs ∨ b ∈ paddrs p := by
  rw [fill_addrs]
  simp only [paddrs, List.map_append, List.mem_append]; tauto

theorem ptop_mem_paddrs {p : List (frame K V)} {a : Nat} (h : ptop p = some a) :
    a ∈ paddrs p := by
  cases p with
  | nil => simp [ptop] at h
  | cons f p =>
    cases f <;> simp [ptop, frame.addr] at h <;> simp [mem_paddrs_L, mem_paddrs_R, h]

/-- The nodes of a filled path occur once iff those of the subtree and of the path do and the
two are disjoint. -/
theorem nodup_fill {p : List (frame K V)} {t : tree K V} :
    (fill p t).addrs.Nodup ↔
      t.addrs.Nodup ∧ (paddrs p).Nodup ∧ ∀ a ∈ t.addrs, a ∉ paddrs p := by
  rw [fill_addrs, paddrs, List.map_append]
  simp only [List.nodup_append, List.Disjoint, List.mem_append]
  constructor
  · rintro ⟨⟨h1, h2, h3⟩, h4, h5⟩
    refine ⟨h2, ⟨h1, h4, ?_⟩, ?_⟩
    · intro a ha hb; exact h5 (Or.inl ha) hb
    · intro a ha hb
      rcases hb with hb | hb
      · exact h3 hb ha
      · exact h5 (Or.inr ha) hb
  · rintro ⟨h1, ⟨h2, h3, h4⟩, h5⟩
    refine ⟨⟨h2, h1, ?_⟩, h3, ?_⟩
    · intro a ha hb; exact h5 a hb (Or.inl ha)
    · intro a ha hb
      rcases ha with ha | ha
      · exact h4 ha hb
      · exact h5 a ha (Or.inr hb)

/-! ### Memory holding a tree -/

theorem Shaped.agree {mem mem2 : Nat → Option (node_type K V)} {par : ptr} {t : tree K V}
    (h : Shaped mem par t) (hf : ∀ a ∈ t.addrs, mem2 a = mem a) : Shaped mem2 par t := by
  induction t generalizing par with
  | nil => trivial
  | node a c v l r ihl ihr =>
    obtain ⟨h1, h2, h3⟩ := h
    refine ⟨?_, ihl h2 ?_, ihr h3 ?_⟩
    · rw [hf a (by simp)]; exact h1
    · intro b hb; exact hf b (by simp [hb])
    · intro b hb; exact hf b (by simp [hb])

theorem Shaped.upd {mem : Nat → Option (node_type K V)} {par : ptr} {t : tree K V}
    (h : Shaped mem par t) {a : Nat} (ha : a ∉ t.addrs) (x : Option (node_type K V)) :
    Shaped (Function.update mem a x) par t := by
  refine h.agree ?_
  intro b hb
  have : b ≠ a := by rintro rfl; exact ha hb
  simp [Function.update_noteq this]

theorem ShapedPath.agree_path {mem mem2 : Nat → Option (node_type K V)} {p : List (frame K V)}
    {h : ptr} (hs : ShapedPath mem p h) (hf : ∀ a ∈ paddrs p, mem2 a = mem a) :
    ShapedPath mem2 p h := by
  induction p generalizing h with
  | nil => trivial
  | cons f p ih =>
    cases f with
    | L a c v r =>
      obtain ⟨h1, h2, h3⟩ := hs
      refine ⟨?_, h2.agree ?_, ih h3 ?_⟩
      · rw [hf a (by simp [mem_paddrs_L])]; exact h1
      · intro b hb; exact hf b (by simp [mem_paddrs_L, hb])
      · intro b hb; exact hf b (by simp [mem_paddrs_L, hb])
    | R a c v l =>
      obtain ⟨h1, h2, h3⟩ := hs
      refine ⟨?_, h2.agree ?_, ih h3 ?_⟩
      · rw [hf a (by simp [mem_paddrs_R])]; exact h1
      · intro b hb; exact hf b (by simp [mem_paddrs_R, hb])
      · intro b hb; exact hf b (by simp [mem_paddrs_R, hb])

theorem ShapedPath.upd_path {mem : Nat → Option (node_type K V)} {p : List (frame K V)}
    {h : ptr} (hs : ShapedPath mem p h) {a : Nat} (ha : a ∉ paddrs p)
    (x : Option (node_type K V)) : ShapedPath (Function.update mem a x) p h := by
  refine hs.agree_path ?_
  intro b hb
  have : b ≠ a := by rintro rfl; exact ha hb
  simp [Function.update_noteq this]

/-- Memory holds a filled path iff it holds the path around the subtree's root pointer and the
subtree below the path's innermost node. -/
theorem shaped_fill {mem : Nat → Option (node_type K V)} {p : List (frame K V)}
    {t : tree K V} :
    Shaped mem none (fill p t) ↔ ShapedPath mem p t.top ∧ Shaped mem (ptop p) t := by
  induction p generalizing t with
  | nil => simp [ShapedPath, ptop]
  | cons f p ih =>
    cases f with
    | L a c v r =>
      simp only [fill_L, ih, Shaped, ShapedPath, tree.top_node, ptop, frame.addr]
      tauto
    | R a c v l =>
      simp only [fill_R, ih, Shaped, ShapedPath, tree.top_node, ptop, frame.addr]
      tauto

end basics

end ft

namespace ft
open color_type

section position
variable {K V : Type}

theorem SameAux.rfl {m : map K V} : SameAux m m := ⟨Eq.refl _, Eq.refl _, Eq.refl _⟩

theorem SameAux.trans {m m2 m3 : map K V} (h : SameAux m m2) (h2 : SameAux m2 m3) :
    SameAux m m3 :=
  ⟨h2.1.trans h.1, h2.2.1.trans h.2.1, h2.2.2.trans h.2.2⟩

theorem fill_top_congr {p : List (frame K V)} {t t2 : tree K V} (h : t.top = t2.top) :
    (fill p t).top = (fill p t2).top := by
  induction p generalizing t t2 with
  | nil => simpa using h
  | cons f p ih => cases f <;> simp only [fill_L, fill_R] <;> exact ih (by simp)

theorem fill_top_cons (f : frame K V) (q : List (frame K V)) (t t2 : tree K V) :
    (fill (f :: q) t).top = (fill (f :: q) t2).top := by
  cases f <;> simp only [fill_L, fill_R] <;> exact fill_top_congr (by simp)

theorem tree.top_ne_of_not_mem {t : tree K V} {a : Nat} (h : a ∉ t.addrs) :
    t.top ≠ some a := fun e => h (tree.top_mem_addrs e)

theorem tree.ne_top_of_not_mem {t : tree K V} {a : Nat} (h : a ∉ t.addrs) :
    some a ≠ t.top := fun e => h (tree.top_mem_addrs e.symm)

/-- A state whose memory holds a tree with the same in-order addresses represents it. -/
theorem Rep.of_addrs_eq {m m2 : map K V} {t t2 : tree K V} (h : Rep m t)
    (ha : t2.addrs = t.addrs) (hb : m2.brk = m.brk) (hr : m2._root = t2.top)
    (hs : Shaped m2.mem none t2) : Rep m2 t2 :=
  ⟨hr, hs, ha ▸ h.nodup, by rw [ha, hb]; exact h.bound⟩

theorem fill_addrs_congr {p : List (frame K V)} {t t2 : tree K V} (h : t2.addrs = t.addrs) :
    (fill p t2).addrs = (fill p t).addrs := by
  simp [fill_addrs, h]

/-- The cell of a node at a position of the represented tree. -/
theorem Rep.cell {m : map K V} {p : List (frame K V)} {a : Nat} {c : color_type}
    {v : Option (K × V)} {l r : tree K V} (h : Rep m (fill p (.node a c v l r))) :
    m.mem a = some { color := c, val := v, l := l.top, r := r.top, parent := ptop p } :=
  (shaped_fill.1 h.shaped).2.1

/-- The facts that a node at a position is distinct from the rest of the tree. -/
theorem Rep.distinct {m : map K V} {p : List (frame K V)} {a : Nat} {c : color_type}
    {v : Option (K × V)} {l r : tree K V} (h : Rep m (fill p (.node a c v l r))) :
    a ∉ l.addrs ∧ a ∉ r.addrs ∧ a ∉ paddrs p ∧ (∀ b ∈ l.addrs, b ∉ r.addrs) ∧
      (∀ b ∈ l.addrs, b ∉ paddrs p) ∧ (∀ b ∈ r.addrs, b ∉ paddrs p) ∧
      l.addrs.Nodup ∧ r.addrs.Nodup ∧ (paddrs p).Nodup := by
  have h1 := nodup_fill.1 h.nodup
  obtain ⟨h2, h3, h4⟩ := h1
  simp only [tree.addrs_node, List.nodup_append, List.nodup_cons, List.Disjoint,
    List.mem_cons, List.mem_append] at h2 h4
  obtain ⟨hl, ⟨har, hr⟩, hd⟩ := h2
  refine ⟨?_, har, ?_, ?_, ?_, ?_, hl, hr, h3⟩
  · intro ha; exact hd ha (Or.inl (Eq.refl _))
  · exact h4 a (Or.inr (Or.inl (Eq.refl _)))
  · intro b hb hb2; exact hd hb (Or.inr hb2)
  · intro b hb; exact h4 b (Or.inl hb)
  · intro b hb; exact h4 b (Or.inr (Or.inr hb))

/-- Recolouring a node at a position. -/
theorem Rep.set_color {m : map K V} {p : List (frame K V)} {a : Nat} {c : color_type}
    {v : Option (K × V)} {l r : tree K V} (h : Rep m (fill p (.node a c v l r)))
    (c2 : color_type) :
    ∃ m2, set_color m (some a) c2 = some m2 ∧ Rep m2 (fill p (.node a c2 v l r)) ∧
      SameAux m m2 := by
  have hc := h.cell
  obtain ⟨hal, har, hap, -, -, -, -, -, -⟩ := h.distinct
  refine ⟨_, store_eq hc _, ?_, SameAux.rfl⟩
  refine h.of_addrs_eq (fill_addrs_congr (by simp)) (Eq.refl _) ?_ ?_
  · exact h.root.trans (fill_top_congr (by simp))
  · obtain ⟨hs1, hs2, hs3, hs4⟩ := shaped_fill.1 h.shaped
    refine shaped_fill.2 ⟨hs1.upd_path hap _, ?_, hs3.upd hal _, hs4.upd har _⟩
    simp

theorem paddrs_L_perm (a : Nat) (c : color_type) (v : Option (K × V)) (r : tree K V)
    (p : List (frame K V)) :
    (paddrs (.L a c v r :: p)).Perm (a :: (r.addrs ++ paddrs p)) := by
  rw [paddrs_L, List.perm_iff_count]
  intro x
  simp only [paddrs, List.map_append, List.count_append, List.count_cons]
  omega

theorem paddrs_R_perm (a : Nat) (c : color_type) (v : Option (K × V)) (l : tree K V)
    (p : List (frame K V)) :
    (paddrs (.R a c v l :: p)).Perm (a :: (l.addrs ++ paddrs p)) := by
  rw [paddrs_R, List.perm_iff_count]
  intro x
  simp only [paddrs, List.map_append, List.count_append, List.count_cons]
  omega

theorem nodup_paddrs_L {a : Nat} {c : color_type} {v : Option (K × V)} {r : tree K V}
    {p : List (frame K V)} :
    (paddrs (.L a c v r :: p)).Nodup ↔ a ∉ r.addrs ∧ a ∉ paddrs p ∧ r.addrs.Nodup ∧
      (paddrs p).Nodup ∧ List.Disjoint r.addrs (paddrs p) := by
  rw [(paddrs_L_perm a c v r p).nodup_iff]
  simp only [List.nodup_cons, List.nodup_append, List.mem_append]
  tauto

theorem nodup_paddrs_R {a : Nat} {c : color_type} {v : Option (K × V)} {l : tree K V}
    {p : List (frame K V)} :
    (paddrs (.R a c v l :: p)).Nodup ↔ a ∉ l.addrs ∧ a ∉ paddrs p ∧ l.addrs.Nodup ∧
      (paddrs p).Nodup ∧ List.Disjoint l.addrs (paddrs p) := by
  rw [(paddrs_R_perm a c v l p).nodup_iff]
  simp only [List.nodup_cons, List.nodup_append, List.mem_append]
  tauto

theorem nodup_fill_iff {p : List (frame K V)} {t : tree K V} :
    (fill p t).addrs.Nodup ↔
      t.addrs.Nodup ∧ (paddrs p).Nodup ∧ List.Disjoint t.addrs (paddrs p) := nodup_fill

theorem disjoint_paddrs_L {s : List Nat} {a : Nat} {c : color_type} {v : Option (K × V)}
    {r : tree K V} {p : List (frame K V)} :
    List.Disjoint s (paddrs (.L a c v r :: p)) ↔
      a ∉ s ∧ List.Disjoint s r.addrs ∧ List.Disjoint s (paddrs p) := by
  simp only [List.Disjoint, mem_paddrs_L]
  constructor
  · intro h
    exact ⟨fun ha => h ha (Or.inl rfl), fun b hb hb2 => h hb (Or.inr (Or.inl hb2)),
      fun b hb hb2 => h hb (Or.inr (Or.inr hb2))⟩
  · rintro ⟨h1, h2, h3⟩ b hb (rfl | hb2 | hb2)
    · exact h1 hb
    · exact h2 hb hb2
    · exact h3 hb hb2

theorem disjoint_paddrs_R {s : List Nat} {a : Nat} {c : color_type} {v : Option (K × V)}
    {l : tree K V} {p : List (frame K V)} :
    List.Disjoint s (paddrs (.R a c v l :: p)) ↔
      a ∉ s ∧ List.Disjoint s l.addrs ∧ List.Disjoint s (paddrs p) := by
  simp only [List.Disjoint, mem_paddrs_R]
  constructor
  · intro h
    exact ⟨fun ha => h ha (Or.inl rfl), fun b hb hb2 => h hb (Or.inr (Or.inl hb2)),
      fun b hb hb2 => h hb (Or.inr (Or.inr hb2))⟩
  · rintro ⟨h1, h2, h3⟩ b hb (rfl | hb2 | hb2)
    · exact h1 hb
    · exact h2 hb hb2
    · exact h3 hb hb2

theorem agree_update {mem mem2 : Nat → Option (node_type K V)} {s : List Nat}
    (h : ∀ b ∈ s, mem2 b = mem b) {a : Nat} (ha : a ∉ s) (x : Option (node_type K V)) :
    ∀ b ∈ s, Function.update mem2 a x b = mem b := by
  intro b hb
  have : b ≠ a := by rintro rfl; exact ha hb
  rw [Function.update_noteq this]; exact h b hb

/-- Redirecting the child link of the innermost frame of a path. -/
theorem ShapedPath.retarget {mem : Nat → Option (node_type K V)} {p : List (frame K V)}
    {h : ptr} (hs : ShapedPath mem p h) (hn : (paddrs p).Nodup) (h2 : ptr) :
    match p with
    | [] => True
    | .L a c v r :: q =>
      ShapedPath (Function.update mem a
        (some { color := c, val := v, l := h2, r := r.top, parent := ptop q })) p h2
    | .R a c v l :: q =>
      ShapedPath (Function.update mem a
        (some { color := c, val := v, l := l.top, r := h2, parent := ptop q })) p h2 := by
  cases p with
  | nil => trivial
  | cons f q =>
    cases f with
    | L a c v r =>
      obtain ⟨h1, h3, h4⟩ := hs
      obtain ⟨n1, n2, -, -, -⟩ := nodup_paddrs_L.1 hn
      exact ⟨by simp, h3.upd n1 _, h4.upd_path n2 _⟩
    | R a c v l =>
      obtain ⟨h1, h3, h4⟩ := hs
      obtain ⟨n1, n2, -, -, -⟩ := nodup_paddrs_R.1 hn
      exact ⟨by simp, h3.upd n1 _, h4.upd_path n2 _⟩


end position

end ft

set_option linter.unusedTactic false
set_option linter.unreachableTactic false

namespace ft
open color_type
variable {K V : Type}

set_option maxHeartbeats 4000000 in
/-- Member `_l_rotate` at a position of the represented tree: the right child comes on top. -/
theorem l_rotate_spec {m : map K V} {p : List (frame K V)} {x y : Nat} {cx cy : color_type}
    {vx vy : Option (K × V)} {A B C : tree K V}
    (h : Rep m (fill p (.node x cx vx A (.node y cy vy B C)))) :
    ∃ m2, map._l_rotate m (some x) = some m2 ∧
      Rep m2 (fill p (.node y cy vy (.node x cx vx A B) C)) ∧ SameAux m m2 := by
  suffices H : ∀ Q : map K V → Prop,
      (∀ m2, Rep m2 (fill p (.node y cy vy (.node x cx vx A B) C)) → SameAux m m2 → Q m2) →
      ∃ m2, map._l_rotate m (some x) = some m2 ∧ Q m2 from H _ (fun _ a b => ⟨a, b⟩)
  intro Q hQ
  have hx := h.cell
  have h' : Rep m (fill (.R x cx vx A :: p) (.node y cy vy B C)) := h
  have hy := h'.cell
  have hn := h.nodup
  obtain ⟨sp, sx, sA, sy, sB, sC⟩ := shaped_fill.1 h.shaped
  cases B with
  | nil =>
    cases p with
    | nil =>
      simp only [tree.top_node, tree.top_nil, ptop, frame.addr] at hx hy
      simp only [nodup_fill_iff, nodup_paddrs_L, nodup_paddrs_R, disjoint_paddrs_L,
            disjoint_paddrs_R, mem_paddrs_L, mem_paddrs_R, tree.addrs_node, tree.addrs_nil,
            List.nodup_append, List.nodup_cons, List.mem_append, List.mem_cons,
            List.disjoint_append_left, List.disjoint_append_right, List.disjoint_cons_left,
            List.disjoint_cons_right, not_or, paddrs_nil, List.disjoint_nil_left,
            List.disjoint_nil_right, List.not_mem_nil, List.nil_append, List.nodup_nil,
            not_false_eq_true, true_and, and_true] at hn
      casesm* _ ∧ _
      have d_x_y : x ≠ y := by first | assumption | exact Ne.symm (by assumption)
      have d_y_x : y ≠ x := by first | assumption | exact Ne.symm (by assumption)
      simp [map._l_rotate, get_r, get_l, get_parent, set_r, set_l, set_parent, store,
        hx, hy, d_x_y, d_y_x]
      refine hQ _ ?_ ⟨rfl, rfl, rfl⟩
      refine h.of_addrs_eq (by simp [fill_addrs]) rfl rfl ?_
      refine shaped_fill.2 ⟨trivial, ?_, ⟨?_, ?_, trivial⟩, ?_⟩
      · simp [ptop, frame.addr, d_x_y, d_y_x]
      · simp [ptop, frame.addr, d_x_y, d_y_x]
      · refine sA.agree ?_
        repeat (first | exact (fun _ _ => rfl) | refine agree_update ?_ (by assumption) _)
      · refine sC.agree ?_
        repeat (first | exact (fun _ _ => rfl) | refine agree_update ?_ (by assumption) _)
    | cons f q =>
      cases f with
      | L a' c' v' s' =>
        have ha' := sp.1
        simp only [tree.top_node, tree.top_nil, ptop, frame.addr] at hx hy ha'
        simp only [nodup_fill_iff, nodup_paddrs_L, nodup_paddrs_R, disjoint_paddrs_L,
              disjoint_paddrs_R, mem_paddrs_L, mem_paddrs_R, tree.addrs_node, tree.addrs_nil,
              List.nodup_append, List.nodup_cons, List.mem_append, List.mem_cons,
              List.disjoint_append_left, List.disjoint_append_right, List.disjoint_cons_left,
              List.disjoint_cons_right, not_or, paddrs_nil, List.disjoint_nil_left,
              List.disjoint_nil_right, List.not_mem_nil, List.nil_append, List.nodup_nil,
              not_false_eq_true, true_and, and_true] at hn
        casesm* _ ∧ _
        have d_x_y : x ≠ y := by first | assumption | exact Ne.symm (by assumption)
        have d_x_ap : x ≠ a' := by first | assumption | exact Ne.symm (by assumption)
        have d_y_x : y ≠ x := by first | assumption | exact Ne.symm (by assumption)
        have d_y_ap : y ≠ a' := by first | assumption | exact Ne.symm (by assumption)
        have d_ap_x : a' ≠ x := by first | assumption | exact Ne.symm (by assumption)
        have d_ap_y : a' ≠ y := by first | assumption | exact Ne.symm (by assumption)
        simp [map._l_rotate, get_r, get_l, get_parent, set_r, set_l, set_parent, store,
          hx, hy, ha', d_x_y, d_x_ap, d_y_x, d_y_ap, d_ap_x, d_ap_y]
        refine hQ _ ?_ ⟨rfl, rfl, rfl⟩
        refine h.of_addrs_eq (by simp [fill_addrs]) rfl ?_ ?_
        · exact h.root.trans (fill_top_cons _ _ _ _)
        refine shaped_fill.2 ⟨⟨?_, ?_, ?_⟩, ?_, ⟨?_, ?_, trivial⟩, ?_⟩
        · simp [ptop, frame.addr, d_x_y, d_x_ap, d_y_x, d_y_ap, d_ap_x, d_ap_y]
        · refine sp.2.1.agree ?_
          repeat (first | exact (fun _ _ => rfl) | refine agree_update ?_ (by assumption) _)
        · refine sp.2.2.agree_path ?_
          repeat (first | exact (fun _ _ => rfl) | refine agree_update ?_ (by assumption) _)
        · simp [ptop, frame.addr, d_x_y, d_x_ap, d_y_x, d_y_ap, d_ap_x, d_ap_y]
        · simp [ptop, frame.addr, d_x_y, d_x_ap, d_y_x, d_y_ap, d_ap_x, d_ap_y]
        · refine sA.agree ?_
          repeat (first | exact (fun _ _ => rfl) | refine agree_update ?_ (by assumption) _)
        · refine sC.agree ?_
          repeat (first | exact (fun _ _ => rfl) | refine agree_update ?_ (by assumption) _)
      | R a' c' v' s' =>
        have ha' := sp.1
        simp only [tree.top_node, tree.top_nil, ptop, frame.addr] at hx hy ha'
        simp only [nodup_fill_iff, nodup_paddrs_L, nodup_paddrs_R, disjoint_paddrs_L,
              disjoint_paddrs_R, mem_paddrs_L, mem_paddrs_R, tree.addrs_node, tree.addrs_nil,
              List.nodup_append, List.nodup_cons, List.mem_append, List.mem_cons,
              List.disjoint_append_left, List.disjoint_append_right, List.disjoint_cons_left,
              List.disjoint_cons_right, not_or, paddrs_nil, List.disjoint_nil_left,
              List.disjoint_nil_right, List.not_mem_nil, List.nil_append, List.nodup_nil,
              not_false_eq_true, true_and, and_true] at hn
        casesm* _ ∧ _
        have d_x_y : x ≠ y := by first | assumption | exact Ne.symm (by assumption)
        have d_x_ap : x ≠ a' := by first | assumption | exact Ne.symm (by assumption)
        have d_y_x : y ≠ x := by first | assumption | exact Ne.symm (by assumption)
        have d_y_ap : y ≠ a' := by first | assumption | exact Ne.symm (by assumption)
        have d_ap_x : a' ≠ x := by first | assumption | exact Ne.symm (by assumption)
        have d_ap_y : a' ≠ y := by first | assumption | exact Ne.symm (by assumption)
        have hl1 : some x ≠ s'.top := tree.ne_top_of_not_mem (by assumption)
        have hl2 : s'.top ≠ some x := tree.top_ne_of_not_mem (by assumption)
        simp [map._l_rotate, get_r, get_l, get_parent, set_r, set_l, set_parent, store,
          hx, hy, ha', d_x_y, d_x_ap, d_y_x, d_y_ap, d_ap_x, d_ap_y, hl1, hl2]
        refine hQ _ ?_ ⟨rfl, rfl, rfl⟩
        refine h.of_addrs_eq (by simp [fill_addrs]) rfl ?_ ?_
        · exact h.root.trans (fill_top_cons _ _ _ _)
        refine shaped_fill.2 ⟨⟨?_, ?_, ?_⟩, ?_, ⟨?_, ?_, trivial⟩, ?_⟩
        · simp [ptop, frame.addr, d_x_y, d_x_ap, d_y_x, d_y_ap, d_ap_x, d_ap_y]
        · refine sp.2.1.agree ?_
          repeat (first | exact (fun _ _ => rfl) | refine agree_update ?_ (by assumption) _)
        · refine sp.2.2.agree_path ?_
          repeat (first | exact (fun _ _ => rfl) | refine agree_update ?_ (by assumption) _)
        · simp [ptop, frame.addr, d_x_y, d_x_ap, d_y_x, d_y_ap, d_ap_x, d_ap_y]
        · simp [ptop, frame.addr, d_x_y, d_x_ap, d_y_x, d_y_ap, d_ap_x, d_ap_y]
        · refine sA.agree ?_
          repeat (first | exact (fun _ _ => rfl) | refine agree_update ?_ (by assumption) _)
        · refine sC.agree ?_
          repeat (first | exact (fun _ _ => rfl) | refine agree_update ?_ (by assumption) _)
  | node b cb vb Bl Br =>
    cases p with
    | nil =>
      obtain ⟨hb, sBl, sBr⟩ := sB
      simp only [tree.top_node, tree.top_nil, ptop, frame.addr] at hx hy hb
      simp only [nodup_fill_iff, nodup_paddrs_L, nodup_paddrs_R, disjoint_paddrs_L,
            disjoint_paddrs_R, mem_paddrs_L, mem_paddrs_R, tree.addrs_node, tree.addrs_nil,
            List.nodup_append, List.nodup_cons, List.mem_append, List.mem_cons,
            List.disjoint_append_left, List.disjoint_append_right, List.disjoint_cons_left,
            List.disjoint_cons_right, not_or, paddrs_nil, List.disjoint_nil_left,
            List.disjoint_nil_right, List.not_mem_nil, List.nil_append, List.nodup_nil,
            not_false_eq_true, true_and, and_true] at hn
      casesm* _ ∧ _
      have d_x_y : x ≠ y := by first | assumption | exact Ne.symm (by assumption)
      have d_x_b : x ≠ b := by first | assumption | exact Ne.symm (by assumption)
      have d_y_x : y ≠ x := by first | assumption | exact Ne.symm (by assumption)
      have d_y_b : y ≠ b := by first | assumption | exact Ne.symm (by assumption)
      have d_b_x : b ≠ x := by first | assumption | exact Ne.symm (by assumption)
      have d_b_y : b ≠ y := by first | assumption | exact Ne.symm (by assumption)
      simp [map._l_rotate, get_r, get_l, get_parent, set_r, set_l, set_parent, store,
        hx, hy, hb, d_x_y, d_x_b, d_y_x, d_y_b, d_b_x, d_b_y]
      refine hQ _ ?_ ⟨rfl, rfl, rfl⟩
      refine h.of_addrs_eq (by simp [fill_addrs]) rfl rfl ?_
      refine shaped_fill.2 ⟨trivial, ?_, ⟨?_, ?_, ⟨?_, ?_, ?_⟩⟩, ?_⟩
      · simp [ptop, frame.addr, d_x_y, d_x_b, d_y_x, d_y_b, d_b_x, d_b_y]
      · simp [ptop, frame.addr, d_x_y, d_x_b, d_y_x, d_y_b, d_b_x, d_b_y]
      · refine sA.agree ?_
        repeat (first | exact (fun _ _ => rfl) | refine agree_update ?_ (by assumption) _)
      · simp [ptop, frame.addr, d_x_y, d_x_b, d_y_x, d_y_b, d_b_x, d_b_y]
      · refine sBl.agree ?_
        repeat (first | exact (fun _ _ => rfl) | refine agree_update ?_ (by assumption) _)
      · refine sBr.agree ?_
        repeat (first | exact (fun _ _ => rfl) | refine agree_update ?_ (by assumption) _)
      · refine sC.agree ?_
        repeat (first | exact (fun _ _ => rfl) | refine agree_update ?_ (by assumption) _)
    | cons f q =>
      cases f with
      | L a' c' v' s' =>
        have ha' := sp.1
        obtain ⟨hb, sBl, sBr⟩ := sB
        simp only [tree.top_node, tree.top_nil, ptop, frame.addr] at hx hy hb ha'
        simp only [nodup_fill_iff, nodup_paddrs_L, nodup_paddrs_R, disjoint_paddrs_L,
              disjoint_paddrs_R, mem_paddrs_L, mem_paddrs_R, tree.addrs_node, tree.addrs_nil,
              List.nodup_append, List.nodup_cons, List.mem_append, List.mem_cons,
              List.disjoint_append_left, List.disjoint_append_right, List.disjoint_cons_left,
              List.disjoint_cons_right, not_or, paddrs_nil, List.disjoint_nil_left,
              List.disjoint_nil_right, List.not_mem_nil, List.nil_append, List.nodup_nil,
              not_false_eq_true, true_and, and_true] at hn
        casesm* _ ∧ _
        have d_x_y : x ≠ y := by first | assumption | exact Ne.symm (by assumption)
        have d_x_b : x ≠ b := by first | assumption | exact Ne.symm (by assumption)
        have d_x_ap : x ≠ a' := by first | assumption | exact Ne.symm (by assumption)
        have d_y_x : y ≠ x := by first | assumption | exact Ne.symm (by assumption)
        have d_y_b : y ≠ b := by first | assumption | exact Ne.symm (by assumption)
        have d_y_ap : y ≠ a' := by first | assumption | exact Ne.symm (by assumption)
        have d_b_x : b ≠ x := by first | assumption | exact Ne.symm (by assumption)
        have d_b_y : b ≠ y := by first | assumption | exact Ne.symm (by assumption)
        have d_b_ap : b ≠ a' := by first | assumption | exact Ne.symm (by assumption)
        have d_ap_x : a' ≠ x := by first | assumption | exact Ne.symm (by assumption)
        have d_ap_y : a' ≠ y := by first | assumption | exact Ne.symm (by assumption)
        have d_ap_b : a' ≠ b := by first | assumption | exact Ne.symm (by assumption)
        simp [map._l_rotate, get_r, get_l, get_parent, set_r, set_l, set_parent, store,
          hx, hy, hb, ha', d_x_y, d_x_b, d_x_ap, d_y_x, d_y_b, d_y_ap, d_b_x, d_b_y, d_b_ap, d_ap_x, d_ap_y, d_ap_b]
        refine hQ _ ?_ ⟨rfl, rfl, rfl⟩
        refine h.of_addrs_eq (by simp [fill_addrs]) rfl ?_ ?_
        · exact h.root.trans (fill_top_cons _ _ _ _)
        refine shaped_fill.2 ⟨⟨?_, ?_, ?_⟩, ?_, ⟨?_, ?_, ⟨?_, ?_, ?_⟩⟩, ?_⟩
        · simp [ptop, frame.addr, d_x_y, d_x_b, d_x_ap, d_y_x, d_y_b, d_y_ap, d_b_x, d_b_y, d_b_ap, d_ap_x, d_ap_y, d_ap_b]
        · refine sp.2.1.agree ?_
          repeat (first | exact (fun _ _ => rfl) | refine agree_update ?_ (by assumption) _)
        · refine sp.2.2.agree_path ?_
          repeat (first | exact (fun _ _ => rfl) | refine agree_update ?_ (by assumption) _)
        · simp [ptop, frame.addr, d_x_y, d_x_b, d_x_ap, d_y_x, d_y_b, d_y_ap, d_b_x, d_b_y, d_b_ap, d_ap_x, d_ap_y, d_ap_b]
        · simp [ptop, frame.addr, d_x_y, d_x_b, d_x_ap, d_y_x, d_y_b, d_y_ap, d_b_x, d_b_y, d_b_ap, d_ap_x, d_ap_y, d_ap_b]
        · refine sA.agree ?_
          repeat (first | exact (fun _ _ => rfl) | refine agree_update ?_ (by assumption) _)
        · simp [ptop, frame.addr, d_x_y, d_x_b, d_x_ap, d_y_x, d_y_b, d_y_ap, d_b_x, d_b_y, d_b_ap, d_ap_x, d_ap_y, d_ap_b]
        · refine sBl.agree ?_
          repeat (first | exact (fun _ _ => rfl) | refine agree_update ?_ (by assumption) _)
        · refine sBr.agree ?_
          repeat (first | exact (fun _ _ => rfl) | refine agree_update ?_ (by assumption) _)
        · refine sC.agree ?_
          repeat (first | exact (fun _ _ => rfl) | refine agree_update ?_ (by assumption) _)
      | R a' c' v' s' =>
        have ha' := sp.1
        obtain ⟨hb, sBl, sBr⟩ := sB
        simp only [tree.top_node, tree.top_nil, ptop, frame.addr] at hx hy hb ha'
        simp only [nodup_fill_iff, nodup_paddrs_L, nodup_paddrs_R, disjoint_paddrs_L,
              disjoint_paddrs_R, mem_paddrs_L, mem_paddrs_R, tree.addrs_node, tree.addrs_nil,
              List.nodup_append, List.nodup_cons, List.mem_append, List.mem_cons,
              List.disjoint_append_left, List.disjoint_append_right, List.disjoint_cons_left,
              List.disjoint_cons_right, not_or, paddrs_nil, List.disjoint_nil_left,
              List.disjoint_nil_right, List.not_mem_nil, List.nil_append, List.nodup_nil,
              not_false_eq_true, true_and, and_true] at hn
        casesm* _ ∧ _
        have d_x_y : x ≠ y := by first | assumption | exact Ne.symm (by assumption)
        have d_x_b : x ≠ b := by first | assumption | exact Ne.symm (by assumption)
        have d_x_ap : x ≠ a' := by first | assumption | exact Ne.symm (by assumption)
        have d_y_x : y ≠ x := by first | assumption | exact Ne.symm (by assumption)
        have d_y_b : y ≠ b := by first | assumption | exact Ne.symm (by assumption)
        have d_y_ap : y ≠ a' := by first | assumption | exact Ne.symm (by assumption)
        have d_b_x : b ≠ x := by first | assumption | exact Ne.symm (by assumption)
        have d_b_y : b ≠ y := by first | assumption | exact Ne.symm (by assumption)
        have d_b_ap : b ≠ a' := by first | assumption | exact Ne.symm (by assumption)
        have d_ap_x : a' ≠ x := by first | assumption | exact Ne.symm (by assumption)
        have d_ap_y : a' ≠ y := by first | assumption | exact Ne.symm (by assumption)
        have d_ap_b : a' ≠ b := by first | assumption | exact Ne.symm (by assumption)
        have hl1 : some x ≠ s'.top := tree.ne_top_of_not_mem (by assumption)
        have hl2 : s'.top ≠ some x := tree.top_ne_of_not_mem (by assumption)
        simp [map._l_rotate, get_r, get_l, get_parent, set_r, set_l, set_parent, store,
          hx, hy, hb, ha', d_x_y, d_x_b, d_x_ap, d_y_x, d_y_b, d_y_ap, d_b_x, d_b_y, d_b_ap, d_ap_x, d_ap_y, d_ap_b, hl1, hl2]
        refine hQ _ ?_ ⟨rfl, rfl, rfl⟩
        refine h.of_addrs_eq (by simp [fill_addrs]) rfl ?_ ?_
        · exact h.root.trans (fill_top_cons _ _ _ _)
        refine shaped_fill.2 ⟨⟨?_, ?_, ?_⟩, ?_, ⟨?_, ?_, ⟨?_, ?_, ?_⟩⟩, ?_⟩
        · simp [ptop, frame.addr, d_x_y, d_x_b, d_x_ap, d_y_x, d_y_b, d_y_ap, d_b_x, d_b_y, d_b_ap, d_ap_x, d_ap_y, d_ap_b]
        · refine sp.2.1.agree ?_
          repeat (first | exact (fun _ _ => rfl) | refine agree_update ?_ (by assumption) _)
        · refine sp.2.2.agree_path ?_
          repeat (first | exact (fun _ _ => rfl) | refine agree_update ?_ (by assumption) _)
        · simp [ptop, frame.addr, d_x_y, d_x_b, d_x_ap, d_y_x, d_y_b, d_y_ap, d_b_x, d_b_y, d_b_ap, d_ap_x, d_ap_y, d_ap_b]
        · simp [ptop, frame.addr, d_x_y, d_x_b, d_x_ap, d_y_x, d_y_b, d_y_ap, d_b_x, d_b_y, d_b_ap, d_ap_x, d_ap_y, d_ap_b]
        · refine sA.agree ?_
          repeat (first | exact (fun _ _ => rfl) | refine agree_update ?_ (by assumption) _)
        · simp [ptop, frame.addr, d_x_y, d_x_b, d_x_ap, d_y_x, d_y_b, d_y_ap, d_b_x, d_b_y, d_b_ap, d_ap_x, d_ap_y, d_ap_b]
        · refine sBl.agree ?_
          repeat (first | exact (fun _ _ => rfl) | refine agree_update ?_ (by assumption) _)
        · refine sBr.agree ?_
          repeat (first | exact (fun _ _ => rfl) | refine agree_update ?_ (by assumption) _)
        · refine sC.agree ?_
          repeat (first | exact (fun _ _ => rfl) | refine agree_update ?_ (by assumption) _)

set_option maxHeartbeats 4000000 in
/-- Member `_r_rotate` at a position of the represented tree: the left child comes on top. -/
theorem r_rotate_spec {m : map K V} {p : List (frame K V)} {x y : Nat} {cx cy : color_type}
    {vx vy : Option (K × V)} {A B C : tree K V}
    (h : Rep m (fill p (.node x cx vx (.node y cy vy C B) A))) :
    ∃ m2, map._r_rotate m (some x) = some m2 ∧
      Rep m2 (fill p (.node y cy vy C (.node x cx vx B A))) ∧ SameAux m m2 := by
  suffices H : ∀ Q : map K V → Prop,
      (∀ m2, Rep m2 (fill p (.node y cy vy C (.node x cx vx B A))) → SameAux m m2 → Q m2) →
      ∃ m2, map._r_rotate m (some x) = some m2 ∧ Q m2 from H _ (fun _ a b => ⟨a, b⟩)
  intro Q hQ
  have hx := h.cell
  have h' : Rep m (fill (.L x cx vx A :: p) (.node y cy vy C B)) := h
  have hy := h'.cell
  have hn := h.nodup
  obtain ⟨sp, sx, ⟨sy, sC, sB⟩, sA⟩ := shaped_fill.1 h.shaped
  cases B with
  | nil =>
    cases p with
    | nil =>
      simp only [tree.top_node, tree.top_nil, ptop, frame.addr] at hx hy
      simp only [nodup_fill_iff, nodup_paddrs_L, nodup_paddrs_R, disjoint_paddrs_L,
            disjoint_paddrs_R, mem_paddrs_L, mem_paddrs_R, tree.addrs_node, tree.addrs_nil,
            List.nodup_append, List.nodup_cons, List.mem_append, List.mem_cons,
            List.disjoint_append_left, List.disjoint_append_right, List.disjoint_cons_left,
            List.disjoint_cons_right, not_or, paddrs_nil, List.disjoint_nil_left,
            List.disjoint_nil_right, List.not_mem_nil, List.nil_append, List.nodup_nil,
            not_false_eq_true, true_and, and_true] at hn
      casesm* _ ∧ _
      have d_x_y : x ≠ y := by first | assumption | exact Ne.symm (by assumption)
      have d_y_x : y ≠ x := by first | assumption | exact Ne.symm (by assumption)
      simp [map._r_rotate, get_r, get_l, get_parent, set_r, set_l, set_parent, store,
        hx, hy, d_x_y, d_y_x]
      refine hQ _ ?_ ⟨rfl, rfl, rfl⟩
      refine h.of_addrs_eq (by simp [fill_addrs]) rfl rfl ?_
      refine shaped_fill.2 ⟨trivial, ?_, ?_, ⟨?_, trivial, ?_⟩⟩
      · simp [ptop, frame.addr, d_x_y, d_y_x]
      · refine sC.agree ?_
        repeat (first | exact (fun _ _ => rfl) | refine agree_update ?_ (by assumption) _)
      · simp [ptop, frame.addr, d_x_y, d_y_x]
      · refine sA.agree ?_
        repeat (first | exact (fun _ _ => rfl) | refine agree_update ?_ (by assumption) _)
    | cons f q =>
      cases f with
      | L a' c' v' s' =>
        have ha' := sp.1
        simp only [tree.top_node, tree.top_nil, ptop, frame.addr] at hx hy ha'
        simp only [nodup_fill_iff, nodup_paddrs_L, nodup_paddrs_R, disjoint_paddrs_L,
              disjoint_paddrs_R, mem_paddrs_L, mem_paddrs_R, tree.addrs_node, tree.addrs_nil,
              List.nodup_append, List.nodup_cons, List.mem_append, List.mem_cons,
              List.disjoint_append_left, List.disjoint_append_right, List.disjoint_cons_left,
              List.disjoint_cons_right, not_or, paddrs_nil, List.disjoint_nil_left,
              List.disjoint_nil_right, List.not_mem_nil, List.nil_append, List.nodup_nil,
              not_false_eq_true, true_and, and_true] at hn
        casesm* _ ∧ _
        have d_x_y : x ≠ y := by first | assumption | exact Ne.symm (by assumption)
        have d_x_ap : x ≠ a' := by first | assumption | exact Ne.symm (by assumption)
        have d_y_x : y ≠ x := by first | assumption | exact Ne.symm (by assumption)
        have d_y_ap : y ≠ a' := by first | assumption | exact Ne.symm (by assumption)
        have d_ap_x : a' ≠ x := by first | assumption | exact Ne.symm (by assumption)
        have d_ap_y : a' ≠ y := by first | assumption | exact Ne.symm (by assumption)
        have hl1 : some x ≠ s'.top := tree.ne_top_of_not_mem (by assumption)
        have hl2 : s'.top ≠ some x := tree.top_ne_of_not_mem (by assumption)
        simp [map._r_rotate, get_r, get_l, get_parent, set_r, set_l, set_parent, store,
          hx, hy, ha', d_x_y, d_x_ap, d_y_x, d_y_ap, d_ap_x, d_ap_y, hl1, hl2]
        refine hQ _ ?_ ⟨rfl, rfl, rfl⟩
        refine h.of_addrs_eq (by simp [fill_addrs]) rfl ?_ ?_
        · exact h.root.trans (fill_top_cons _ _ _ _)
        refine shaped_fill.2 ⟨⟨?_, ?_, ?_⟩, ?_, ?_, ⟨?_, trivial, ?_⟩⟩
        · simp [ptop, frame.addr, d_x_y, d_x_ap, d_y_x, d_y_ap, d_ap_x, d_ap_y]
        · refine sp.2.1.agree ?_
          repeat (first | exact (fun _ _ => rfl) | refine agree_update ?_ (by assumption) _)
        · refine sp.2.2.agree_path ?_
          repeat (first | exact (fun _ _ => rfl) | refine agree_update ?_ (by assumption) _)
        · simp [ptop, frame.addr, d_x_y, d_x_ap, d_y_x, d_y_ap, d_ap_x, d_ap_y]
        · refine sC.agree ?_
          repeat (first | exact (fun _ _ => rfl) | refine agree_update ?_ (by assumption) _)
        · simp [ptop, frame.addr, d_x_y, d_x_ap, d_y_x, d_y_ap, d_ap_x, d_ap_y]
        · refine sA.agree ?_
          repeat (first | exact (fun _ _ => rfl) | refine agree_update ?_ (by assumption) _)
      | R a' c' v' s' =>
        have ha' := sp.1
        simp only [tree.top_node, tree.top_nil, ptop, frame.addr] at hx hy ha'
        simp only [nodup_fill_iff, nodup_paddrs_L, nodup_paddrs_R, disjoint_paddrs_L,
              disjoint_paddrs_R, mem_paddrs_L, mem_paddrs_R, tree.addrs_node, tree.addrs_nil,
              List.nodup_append, List.nodup_cons, List.mem_append, List.mem_cons,
              List.disjoint_append_left, List.disjoint_append_right, List.disjoint_cons_left,
              List.disjoint_cons_right, not_or, paddrs_nil, List.disjoint_nil_left,
              List.disjoint_nil_right, List.not_mem_nil, List.nil_append, List.nodup_nil,
              not_false_eq_true, true_and, and_true] at hn
        casesm* _ ∧ _
        have d_x_y : x ≠ y := by first | assumption | exact Ne.symm (by assumption)
        have d_x_ap : x ≠ a' := by first | assumption | exact Ne.symm (by assumption)
        have d_y_x : y ≠ x := by first | assumption | exact Ne.symm (by assumption)
        have d_y_ap : y ≠ a' := by first | assumption | exact Ne.symm (by assumption)
        have d_ap_x : a' ≠ x := by first | assumption | exact Ne.symm (by assumption)
        have d_ap_y : a' ≠ y := by first | assumption | exact Ne.symm (by assumption)
        simp [map._r_rotate, get_r, get_l, get_parent, set_r, set_l, set_parent, store,
          hx, hy, ha', d_x_y, d_x_ap, d_y_x, d_y_ap, d_ap_x, d_ap_y]
        refine hQ _ ?_ ⟨rfl, rfl, rfl⟩
        refine h.of_addrs_eq (by simp [fill_addrs]) rfl ?_ ?_
        · exact h.root.trans (fill_top_cons _ _ _ _)
        refine shaped_fill.2 ⟨⟨?_, ?_, ?_⟩, ?_, ?_, ⟨?_, trivial, ?_⟩⟩
        · simp [ptop, frame.addr, d_x_y, d_x_ap, d_y_x, d_y_ap, d_ap_x, d_ap_y]
        · refine sp.2.1.agree ?_
          repeat (first | exact (fun _ _ => rfl) | refine agree_update ?_ (by assumption) _)
        · refine sp.2.2.agree_path ?_
          repeat (first | exact (fun _ _ => rfl) | refine agree_update ?_ (by assumption) _)
        · simp [ptop, frame.addr, d_x_y, d_x_ap, d_y_x, d_y_ap, d_ap_x, d_ap_y]
        · refine sC.agree ?_
          repeat (first | exact (fun _ _ => rfl) | refine agree_update ?_ (by assumption) _)
        · simp [ptop, frame.addr, d_x_y, d_x_ap, d_y_x, d_y_ap, d_ap_x, d_ap_y]
        · refine sA.agree ?_
          repeat (first | exact (fun _ _ => rfl) | refine agree_update ?_ (by assumption) _)
  | node b cb vb Bl Br =>
    cases p with
    | nil =>
      obtain ⟨hb, sBl, sBr⟩ := sB
      simp only [tree.top_node, tree.top_nil, ptop, frame.addr] at hx hy hb
      simp only [nodup_fill_iff, nodup_paddrs_L, nodup_paddrs_R, disjoint_paddrs_L,
            disjoint_paddrs_R, mem_paddrs_L, mem_paddrs_R, tree.addrs_node, tree.addrs_nil,
            List.nodup_append, List.nodup_cons, List.mem_append, List.mem_cons,
            List.disjoint_append_left, List.disjoint_append_right, List.disjoint_cons_left,
            List.disjoint_cons_right, not_or, paddrs_nil, List.disjoint_nil_left,
            List.disjoint_nil_right, List.not_mem_nil, List.nil_append, List.nodup_nil,
            not_false_eq_true, true_and, and_true] at hn
      casesm* _ ∧ _
      have d_x_y : x ≠ y := by first | assumption | exact Ne.symm (by assumption)
      have d_x_b : x ≠ b := by first | assumption | exact Ne.symm (by assumption)
      have d_y_x : y ≠ x := by first | assumption | exact Ne.symm (by assumption)
      have d_y_b : y ≠ b := by first | assumption | exact Ne.symm (by assumption)
      have d_b_x : b ≠ x := by first | assumption | exact Ne.symm (by assumption)
      have d_b_y : b ≠ y := by first | assumption | exact Ne.symm (by assumption)
      simp [map._r_rotate, get_r, get_l, get_parent, set_r, set_l, set_parent, store,
        hx, hy, hb, d_x_y, d_x_b, d_y_x, d_y_b, d_b_x, d_b_y]
      refine hQ _ ?_ ⟨rfl, rfl, rfl⟩
      refine h.of_addrs_eq (by simp [fill_addrs]) rfl rfl ?_
      refine shaped_fill.2 ⟨trivial, ?_, ?_, ⟨?_, ⟨?_, ?_, ?_⟩, ?_⟩⟩
      · simp [ptop, frame.addr, d_x_y, d_x_b, d_y_x, d_y_b, d_b_x, d_b_y]
      · refine sC.agree ?_
        repeat (first | exact (fun _ _ => rfl) | refine agree_update ?_ (by assumption) _)
      · simp [ptop, frame.addr, d_x_y, d_x_b, d_y_x, d_y_b, d_b_x, d_b_y]
      · simp [ptop, frame.addr, d_x_y, d_x_b, d_y_x, d_y_b, d_b_x, d_b_y]
      · refine sBl.agree ?_
        repeat (first | exact (fun _ _ => rfl) | refine agree_update ?_ (by assumption) _)
      · refine sBr.agree ?_
        repeat (first | exact (fun _ _ => rfl) | refine agree_update ?_ (by assumption) _)
      · refine sA.agree ?_
        repeat (first | exact (fun _ _ => rfl) | refine agree_update ?_ (by assumption) _)
    | cons f q =>
      cases f with
      | L a' c' v' s' =>
        have ha' := sp.1
        obtain ⟨hb, sBl, sBr⟩ := sB
        simp only [tree.top_node, tree.top_nil, ptop, frame.addr] at hx hy hb ha'
        simp only [nodup_fill_iff, nodup_paddrs_L, nodup_paddrs_R, disjoint_paddrs_L,
              disjoint_paddrs_R, mem_paddrs_L, mem_paddrs_R, tree.addrs_node, tree.addrs_nil,
              List.nodup_append, List.nodup_cons, List.mem_append, List.mem_cons,
              List.disjoint_append_left, List.disjoint_append_right, List.disjoint_cons_left,
              List.disjoint_cons_right, not_or, paddrs_nil, List.disjoint_nil_left,
              List.disjoint_nil_right, List.not_mem_nil, List.nil_append, List.nodup_nil,
              not_false_eq_true, true_and, and_true] at hn
        casesm* _ ∧ _
        have d_x_y : x ≠ y := by first | assumption | exact Ne.symm (by assumption)
        have d_x_b : x ≠ b := by first | assumption | exact Ne.symm (by assumption)
        have d_x_ap : x ≠ a' := by first | assumption | exact Ne.symm (by assumption)
        have d_y_x : y ≠ x := by first | assumption | exact Ne.symm (by assumption)
        have d_y_b : y ≠ b := by first | assumption | exact Ne.symm (by assumption)
        have d_y_ap : y ≠ a' := by first | assumption | exact Ne.symm (by assumption)
        have d_b_x : b ≠ x := by first | assumption | exact Ne.symm (by assumption)
        have d_b_y : b ≠ y := by first | assumption | exact Ne.symm (by assumption)
        have d_b_ap : b ≠ a' := by first | assumption | exact Ne.symm (by assumption)
        have d_ap_x : a' ≠ x := by first | assumption | exact Ne.symm (by assumption)
        have d_ap_y : a' ≠ y := by first | assumption | exact Ne.symm (by assumption)
        have d_ap_b : a' ≠ b := by first | assumption | exact Ne.symm (by assumption)
        have hl1 : some x ≠ s'.top := tree.ne_top_of_not_mem (by assumption)
        have hl2 : s'.top ≠ some x := tree.top_ne_of_not_mem (by assumption)
        simp [map._r_rotate, get_r, get_l, get_parent, set_r, set_l, set_parent, store,
          hx, hy, hb, ha', d_x_y, d_x_b, d_x_ap, d_y_x, d_y_b, d_y_ap, d_b_x, d_b_y, d_b_ap, d_ap_x, d_ap_y, d_ap_b, hl1, hl2]
        refine hQ _ ?_ ⟨rfl, rfl, rfl⟩
        refine h.of_addrs_eq (by simp [fill_addrs]) rfl ?_ ?_
        · exact h.root.trans (fill_top_cons _ _ _ _)
        refine shaped_fill.2 ⟨⟨?_, ?_, ?_⟩, ?_, ?_, ⟨?_, ⟨?_, ?_, ?_⟩, ?_⟩⟩
        · simp [ptop, frame.addr, d_x_y, d_x_b, d_x_ap, d_y_x, d_y_b, d_y_ap, d_b_x, d_b_y, d_b_ap, d_ap_x, d_ap_y, d_ap_b]
        · refine sp.2.1.agree ?_
          repeat (first | exact (fun _ _ => rfl) | refine agree_update ?_ (by assumption) _)
        · refine sp.2.2.agree_path ?_
          repeat (first | exact (fun _ _ => rfl) | refine agree_update ?_ (by assumption) _)
        · simp [ptop, frame.addr, d_x_y, d_x_b, d_x_ap, d_y_x, d_y_b, d_y_ap, d_b_x, d_b_y, d_b_ap, d_ap_x, d_ap_y, d_ap_b]
        · refine sC.agree ?_
          repeat (first | exact (fun _ _ => rfl) | refine agree_update ?_ (by assumption) _)
        · simp [ptop, frame.addr, d_x_y, d_x_b, d_x_ap, d_y_x, d_y_b, d_y_ap, d_b_x, d_b_y, d_b_ap, d_ap_x, d_ap_y, d_ap_b]
        · simp [ptop, frame.addr, d_x_y, d_x_b, d_x_ap, d_y_x, d_y_b, d_y_ap, d_b_x, d_b_y, d_b_ap, d_ap_x, d_ap_y, d_ap_b]
        · refine sBl.agree ?_
          repeat (first | exact (fun _ _ => rfl) | refine agree_update ?_ (by assumption) _)
        · refine sBr.agree ?_
          repeat (first | exact (fun _ _ => rfl) | refine agree_update ?_ (by assumption) _)
        · refine sA.agree ?_
          repeat (first | exact (fun _ _ => rfl) | refine agree_update ?_ (by assumption) _)
      | R a' c' v' s' =>
        have ha' := sp.1
        obtain ⟨hb, sBl, sBr⟩ := sB
        simp only [tree.top_node, tree.top_nil, ptop, frame.addr] at hx hy hb ha'
        simp only [nodup_fill_iff, nodup_paddrs_L, nodup_paddrs_R, disjoint_paddrs_L,
              disjoint_paddrs_R, mem_paddrs_L, mem_paddrs_R, tree.addrs_node, tree.addrs_nil,
              List.nodup_append, List.nodup_cons, List.mem_append, List.mem_cons,
              List.disjoint_append_left, List.disjoint_append_right, List.disjoint_cons_left,
              List.disjoint_cons_right, not_or, paddrs_nil, List.disjoint_nil_left,
              List.disjoint_nil_right, List.not_mem_nil, List.nil_append, List.nodup_nil,
              not_false_eq_true, true_and, and_true] at hn
        casesm* _ ∧ _
        have d_x_y : x ≠ y := by first | assumption | exact Ne.symm (by assumption)
        have d_x_b : x ≠ b := by first | assumption | exact Ne.symm (by assumption)
        have d_x_ap : x ≠ a' := by first | assumption | exact Ne.symm (by assumption)
        have d_y_x : y ≠ x := by first | assumption | exact Ne.symm (by assumption)
        have d_y_b : y ≠ b := by first | assumption | exact Ne.symm (by assumption)
        have d_y_ap : y ≠ a' := by first | assumption | exact Ne.symm (by assumption)
        have d_b_x : b ≠ x := by first | assumption | exact Ne.symm (by assumption)
        have d_b_y : b ≠ y := by first | assumption | exact Ne.symm (by assumption)
        have d_b_ap : b ≠ a' := by first | assumption | exact Ne.symm (by assumption)
        have d_ap_x : a' ≠ x := by first | assumption | exact Ne.symm (by assumption)
        have d_ap_y : a' ≠ y := by first | assumption | exact Ne.symm (by assumption)
        have d_ap_b : a' ≠ b := by first | assumption | exact Ne.symm (by assumption)
        simp [map._r_rotate, get_r, get_l, get_parent, set_r, set_l, set_parent, store,
          hx, hy, hb, ha', d_x_y, d_x_b, d_x_ap, d_y_x, d_y_b, d_y_ap, d_b_x, d_b_y, d_b_ap, d_ap_x, d_ap_y, d_ap_b]
        refine hQ _ ?_ ⟨rfl, rfl, rfl⟩
        refine h.of_addrs_eq (by simp [fill_addrs]) rfl ?_ ?_
        · exact h.root.trans (fill_top_cons _ _ _ _)
        refine shaped_fill.2 ⟨⟨?_, ?_, ?_⟩, ?_, ?_, ⟨?_, ⟨?_, ?_, ?_⟩, ?_⟩⟩
        · simp [ptop, frame.addr, d_x_y, d_x_b, d_x_ap, d_y_x, d_y_b, d_y_ap, d_b_x, d_b_y, d_b_ap, d_ap_x, d_ap_y, d_ap_b]
        · refine sp.2.1.agree ?_
          repeat (first | exact (fun _ _ => rfl) | refine agree_update ?_ (by assumption) _)
        · refine sp.2.2.agree_path ?_
          repeat (first | exact (fun _ _ => rfl) | refine agree_update ?_ (by assumption) _)
        · simp [ptop, frame.addr, d_x_y, d_x_b, d_x_ap, d_y_x, d_y_b, d_y_ap, d_b_x, d_b_y, d_b_ap, d_ap_x, d_ap_y, d_ap_b]
        · refine sC.agree ?_
          repeat (first | exact (fun _ _ => rfl) | refine agree_update ?_ (by assumption) _)
        · simp [ptop, frame.addr, d_x_y, d_x_b, d_x_ap, d_y_x, d_y_b, d_y_ap, d_b_x, d_b_y, d_b_ap, d_ap_x, d_ap_y, d_ap_b]
        · simp [ptop, frame.addr, d_x_y, d_x_b, d_x_ap, d_y_x, d_y_b, d_y_ap, d_b_x, d_b_y, d_b_ap, d_ap_x, d_ap_y, d_ap_b]
        · refine sBl.agree ?_
          repeat (first | exact (fun _ _ => rfl) | refine agree_update ?_ (by assumption) _)
        · refine sBr.agree ?_
          repeat (first | exact (fun _ _ => rfl) | refine agree_update ?_ (by assumption) _)
        · refine sA.agree ?_
          repeat (first | exact (fun _ _ => rfl) | refine agree_update ?_ (by assumption) _)

end ft

set_option linter.unusedSectionVars false

namespace ft
open color_type
variable {K V : Type}

/-- The test `s && s->color == red` on the root pointer of a subtree. -/
theorem Rep.is_red_top {m : map K V} {p : List (frame K V)} {t : tree K V}
    (h : Rep m (fill p t)) : map.is_red m t.top = some (decide (t.color = red)) := by
  cases t with
  | nil => simp [map.is_red, tree.color]
  | node a c v l r => simp [map.is_red, get_color_eq h.cell, tree.color]

/-- One iteration of `_insert_fix` when the uncle is not red and `k` is an outer grandchild
(parent on the `R` side). -/
theorem fix_body_outer_R
    {m : map K V} {q : List (frame K V)} {g P k : Nat}
    {cg cP ck : color_type} {vg vP vk : Option (K × V)} {U S kl kr : tree K V}
    (h : Rep m (fill q (.node g cg vg U (.node P cP vP S (.node k ck vk kl kr)))))
    (hU : U.color ≠ red) :
    ∃ m2, map._insert_fix_body m (some k) = some (m2, some k) ∧
      Rep m2 (fill q (.node P black vP (.node g red vg U S) (.node k ck vk kl kr))) ∧
      SameAux m m2 := by
  have hk := Rep.cell (p := (.R P cP vP S) :: (.R g cg vg U) :: q) h
  have hP := Rep.cell (p := (.R g cg vg U) :: q) h
  have hg := Rep.cell (p := q) h
  have hu := Rep.is_red_top (p := (.L g cg vg (.node P cP vP S (.node k ck vk kl kr))) :: q) h
  have hn := h.nodup
  simp only [nodup_fill_iff, nodup_paddrs_L, nodup_paddrs_R, disjoint_paddrs_L,
    disjoint_paddrs_R, mem_paddrs_L, mem_paddrs_R, tree.addrs_node, tree.addrs_nil,
    List.nodup_append, List.nodup_cons, List.mem_append, List.mem_cons,
    List.disjoint_append_left, List.disjoint_append_right, List.disjoint_cons_left,
    List.disjoint_cons_right, not_or, paddrs_nil, List.disjoint_nil_left,
    List.disjoint_nil_right, List.not_mem_nil, List.nil_append, List.nodup_nil,
    not_false_eq_true, true_and, and_true] at hn
  casesm* _ ∧ _
  have hkS : some k ≠ S.top := tree.ne_top_of_not_mem (by assumption)
  obtain ⟨m1, e1, r1, a1⟩ := Rep.set_color (p := (.R g cg vg U) :: q) h black
  have hk1 := Rep.cell (p := (.R P black vP S) :: (.R g cg vg U) :: q) r1
  have hP1 := Rep.cell (p := (.R g cg vg U) :: q) r1
  obtain ⟨m2, e2, r2, a2⟩ := Rep.set_color (p := q) r1 red
  have hk2 := Rep.cell (p := (.R P black vP S) :: (.R g red vg U) :: q) r2
  have hP2 := Rep.cell (p := (.R g red vg U) :: q) r2
  obtain ⟨m3, e3, r3, a3⟩ := l_rotate_spec (p := q) r2
  refine ⟨m3, ?_, r3, a1.trans (a2.trans a3)⟩
  simp [map._insert_fix_body, get_parent_eq hk, get_parent_eq hP, get_r_eq hg, get_l_eq hg, hu,
    hU, get_l_eq hP, get_r_eq hP, hkS, e1, get_parent_eq hk1, get_parent_eq hP1, e2,
    get_parent_eq hk2, get_parent_eq hP2, e3, ptop, frame.addr]

/-- One iteration of `_insert_fix` when the uncle is not red and `k` is an inner grandchild
(parent on the `R` side). -/
theorem fix_body_inner_R
    {m : map K V} {q : List (frame K V)} {g P k : Nat}
    {cg cP ck : color_type} {vg vP vk : Option (K × V)} {U S kl kr : tree K V}
    (h : Rep m (fill q (.node g cg vg U (.node P cP vP (.node k ck vk kl kr) S))))
    (hU : U.color ≠ red) :
    ∃ m2, map._insert_fix_body m (some k) = some (m2, some P) ∧
      Rep m2 (fill q (.node k black vk (.node g red vg U kl) (.node P cP vP kr S))) ∧
      SameAux m m2 := by
  have hk := Rep.cell (p := (.L P cP vP S) :: (.R g cg vg U) :: q) h
  have hP := Rep.cell (p := (.R g cg vg U) :: q) h
  have hg := Rep.cell (p := q) h
  have hu := Rep.is_red_top (p := (.L g cg vg (.node P cP vP (.node k ck vk kl kr) S)) :: q) h
  have hn := h.nodup
  simp only [nodup_fill_iff, nodup_paddrs_L, nodup_paddrs_R, disjoint_paddrs_L,
    disjoint_paddrs_R, mem_paddrs_L, mem_paddrs_R, tree.addrs_node, tree.addrs_nil,
    List.nodup_append, List.nodup_cons, List.mem_append, List.mem_cons,
    List.disjoint_append_left, List.disjoint_append_right, List.disjoint_cons_left,
    List.disjoint_cons_right, not_or, paddrs_nil, List.disjoint_nil_left,
    List.disjoint_nil_right, List.not_mem_nil, List.nil_append, List.nodup_nil,
    not_false_eq_true, true_and, and_true] at hn
  casesm* _ ∧ _
  obtain ⟨m0, e0, r0, a0⟩ := r_rotate_spec (p := (.R g cg vg U) :: q) h
  have hP0 := Rep.cell (p := (.R k ck vk kl) :: (.R g cg vg U) :: q) r0
  obtain ⟨m1, e1, r1, a1⟩ := Rep.set_color (p := (.R g cg vg U) :: q) r0 black
  have hk1 := Rep.cell (p := (.R g cg vg U) :: q) r1
  have hP1 := Rep.cell (p := (.R k black vk kl) :: (.R g cg vg U) :: q) r1
  obtain ⟨m2, e2, r2, a2⟩ := Rep.set_color (p := q) r1 red
  have hk2 := Rep.cell (p := (.R g red vg U) :: q) r2
  have hP2 := Rep.cell (p := (.R k black vk kl) :: (.R g red vg U) :: q) r2
  obtain ⟨m3, e3, r3, a3⟩ := l_rotate_spec (p := q) r2
  refine ⟨m3, ?_, r3, a0.trans (a1.trans (a2.trans a3))⟩
  simp [map._insert_fix_body, get_parent_eq hk, get_parent_eq hP, get_r_eq hg, get_l_eq hg, hu,
    hU, get_l_eq hP, get_r_eq hP, e0, get_parent_eq hP0, e1, get_parent_eq hk1,
    get_parent_eq hP1, e2, get_parent_eq hk2, get_parent_eq hP2, e3, ptop, frame.addr]

/-- One iteration of `_insert_fix` when the uncle is red (parent on the `R` side of the
grandparent, `k` on the `L` side of the parent). -/
theorem fix_body_red_RL
    {m : map K V} {q : List (frame K V)} {g P k u : Nat}
    {cg cP ck : color_type} {vg vP vk vu : Option (K × V)} {ul ur S kl kr : tree K V}
    (h : Rep m (fill q (.node g cg vg (.node u red vu ul ur) (.node P cP vP (.node k ck vk kl kr) S)))) :
    ∃ m2, map._insert_fix_body m (some k) = some (m2, some g) ∧
      Rep m2 (fill q (.node g red vg (.node u black vu ul ur) (.node P black vP (.node k ck vk kl kr) S))) ∧
      SameAux m m2 := by
  have hk := Rep.cell (p := (.L P cP vP S) :: (.R g cg vg (.node u red vu ul ur)) :: q) h
  have hP := Rep.cell (p := (.R g cg vg (.node u red vu ul ur)) :: q) h
  have hg := Rep.cell (p := q) h
  have hu := Rep.cell (p := (.L g cg vg (.node P cP vP (.node k ck vk kl kr) S)) :: q) h
  obtain ⟨m1, e1, r1, a1⟩ := Rep.set_color (p := (.L g cg vg (.node P cP vP (.node k ck vk kl kr) S)) :: q) h black
  have hk1 := Rep.cell (p := (.L P cP vP S) :: (.R g cg vg (.node u black vu ul ur)) :: q) r1
  obtain ⟨m2, e2, r2, a2⟩ := Rep.set_color (p := (.R g cg vg (.node u black vu ul ur)) :: q) r1 black
  have hk2 := Rep.cell (p := (.L P black vP S) :: (.R g cg vg (.node u black vu ul ur)) :: q) r2
  have hP2 := Rep.cell (p := (.R g cg vg (.node u black vu ul ur)) :: q) r2
  obtain ⟨m3, e3, r3, a3⟩ := Rep.set_color (p := q) r2 red
  have hk3 := Rep.cell (p := (.L P black vP S) :: (.R g red vg (.node u black vu ul ur)) :: q) r3
  have hP3 := Rep.cell (p := (.R g red vg (.node u black vu ul ur)) :: q) r3
  refine ⟨m3, ?_, r3, a1.trans (a2.trans a3)⟩
  simp [map._insert_fix_body, map._insert_fix_recolor, map.is_red, get_parent_eq hk,
    get_parent_eq hP, get_r_eq hg, get_l_eq hg, get_color_eq hu, e1, get_parent_eq hk1,
    e2, get_parent_eq hk2, get_parent_eq hP2, e3, get_parent_eq hk3, get_parent_eq hP3, ptop,
    frame.addr]

/-- One iteration of `_insert_fix` when the uncle is red (parent on the `R` side of the
grandparent, `k` on the `R` side of the parent). -/
theorem fix_body_red_RR
    {m : map K V} {q : List (frame K V)} {g P k u : Nat}
    {cg cP ck : color_type} {vg vP vk vu : Option (K × V)} {ul ur S kl kr : tree K V}
    (h : Rep m (fill q (.node g cg vg (.node u red vu ul ur) (.node P cP vP S (.node k ck vk kl kr))))) :
    ∃ m2, map._insert_fix_body m (some k) = some (m2, some g) ∧
      Rep m2 (fill q (.node g red vg (.node u black vu ul ur) (.node P black vP S (.node k ck vk kl kr)))) ∧
      SameAux m m2 := by
  have hk := Rep.cell (p := (.R P cP vP S) :: (.R g cg vg (.node u red vu ul ur)) :: q) h
  have hP := Rep.cell (p := (.R g cg vg (.node u red vu ul ur)) :: q) h
  have hg := Rep.cell (p := q) h
  have hu := Rep.cell (p := (.L g cg vg (.node P cP vP S (.node k ck vk kl kr))) :: q) h
  obtain ⟨m1, e1, r1, a1⟩ := Rep.set_color (p := (.L g cg vg (.node P cP vP S (.node k ck vk kl kr))) :: q) h black
  have hk1 := Rep.cell (p := (.R P cP vP S) :: (.R g cg vg (.node u black vu ul ur)) :: q) r1
  obtain ⟨m2, e2, r2, a2⟩ := Rep.set_color (p := (.R g cg vg (.node u black vu ul ur)) :: q) r1 black
  have hk2 := Rep.cell (p := (.R P black vP S) :: (.R g cg vg (.node u black vu ul ur)) :: q) r2
  have hP2 := Rep.cell (p := (.R g cg vg (.node u black vu ul ur)) :: q) r2
  obtain ⟨m3, e3, r3, a3⟩ := Rep.set_color (p := q) r2 red
  have hk3 := Rep.cell (p := (.R P black vP S) :: (.R g red vg (.node u black vu ul ur)) :: q) r3
  have hP3 := Rep.cell (p := (.R g red vg (.node u black vu ul ur)) :: q) r3
  refine ⟨m3, ?_, r3, a1.trans (a2.trans a3)⟩
  simp [map._insert_fix_body, map._insert_fix_recolor, map.is_red, get_parent_eq hk,
    get_parent_eq hP, get_r_eq hg, get_l_eq hg, get_color_eq hu, e1, get_parent_eq hk1,
    e2, get_parent_eq hk2, get_parent_eq hP2, e3, get_parent_eq hk3, get_parent_eq hP3, ptop,
    frame.addr]

/-- One iteration of `_insert_fix` when the uncle is not red and `k` is an outer grandchild
(parent on the `L` side). -/
theorem fix_body_outer_L
    {m : map K V} {q : List (frame K V)} {g P k : Nat}
    {cg cP ck : color_type} {vg vP vk : Option (K × V)} {U S kl kr : tree K V}
    (h : Rep m (fill q (.node g cg vg (.node P cP vP (.node k ck vk kl kr) S) U)))
    (hU : U.color ≠ red) :
    ∃ m2, map._insert_fix_body m (some k) = some (m2, some k) ∧
      Rep m2 (fill q (.node P black vP (.node k ck vk kl kr) (.node g red vg S U))) ∧
      SameAux m m2 := by
  have hk := Rep.cell (p := (.L P cP vP S) :: (.L g cg vg U) :: q) h
  have hP := Rep.cell (p := (.L g cg vg U) :: q) h
  have hg := Rep.cell (p := q) h
  have hu := Rep.is_red_top (p := (.R g cg vg (.node P cP vP (.node k ck vk kl kr) S)) :: q) h
  have hn := h.nodup
  simp only [nodup_fill_iff, nodup_paddrs_L, nodup_paddrs_R, disjoint_paddrs_L,
    disjoint_paddrs_R, mem_paddrs_L, mem_paddrs_R, tree.addrs_node, tree.addrs_nil,
    List.nodup_append, List.nodup_cons, List.mem_append, List.mem_cons,
    List.disjoint_append_left, List.disjoint_append_right, List.disjoint_cons_left,
    List.disjoint_cons_right, not_or, paddrs_nil, List.disjoint_nil_left,
    List.disjoint_nil_right, List.not_mem_nil, List.nil_append, List.nodup_nil,
    not_false_eq_true, true_and, and_true] at hn
  casesm* _ ∧ _
  have hkS : some k ≠ S.top := tree.ne_top_of_not_mem (by assumption)
  have hPU : some P ≠ U.top := tree.ne_top_of_not_mem (by assumption)
  obtain ⟨m1, e1, r1, a1⟩ := Rep.set_color (p := (.L g cg vg U) :: q) h black
  have hk1 := Rep.cell (p := (.L P black vP S) :: (.L g cg vg U) :: q) r1
  have hP1 := Rep.cell (p := (.L g cg vg U) :: q) r1
  obtain ⟨m2, e2, r2, a2⟩ := Rep.set_color (p := q) r1 red
  have hk2 := Rep.cell (p := (.L P black vP S) :: (.L g red vg U) :: q) r2
  have hP2 := Rep.cell (p := (.L g red vg U) :: q) r2
  obtain ⟨m3, e3, r3, a3⟩ := r_rotate_spec (p := q) r2
  refine ⟨m3, ?_, r3, a1.trans (a2.trans a3)⟩
  simp [map._insert_fix_body, get_parent_eq hk, get_parent_eq hP, get_r_eq hg, get_l_eq hg, hu,
    hU, get_l_eq hP, get_r_eq hP, hkS, hPU, e1, get_parent_eq hk1, get_parent_eq hP1, e2,
    get_parent_eq hk2, get_parent_eq hP2, e3, ptop, frame.addr]

/-- One iteration of `_insert_fix` when the uncle is not red and `k` is an inner grandchild
(parent on the `L` side). -/
theorem fix_body_inner_L
    {m : map K V} {q : List (frame K V)} {g P k : Nat}
    {cg cP ck : color_type} {vg vP vk : Option (K × V)} {U S kl kr : tree K V}
    (h : Rep m (fill q (.node g cg vg (.node P cP vP S (.node k ck vk kr kl)) U)))
    (hU : U.color ≠ red) :
    ∃ m2, map._insert_fix_body m (some k) = some (m2, some P) ∧
      Rep m2 (fill q (.node k black vk (.node P cP vP S kr) (.node g red vg kl U))) ∧
      SameAux m m2 := by
  have hk := Rep.cell (p := (.R P cP vP S) :: (.L g cg vg U) :: q) h
  have hP := Rep.cell (p := (.L g cg vg U) :: q) h
  have hg := Rep.cell (p := q) h
  have hu := Rep.is_red_top (p := (.R g cg vg (.node P cP vP S (.node k ck vk kr kl))) :: q) h
  have hn := h.nodup
  simp only [nodup_fill_iff, nodup_paddrs_L, nodup_paddrs_R, disjoint_paddrs_L,
    disjoint_paddrs_R, mem_paddrs_L, mem_paddrs_R, tree.addrs_node, tree.addrs_nil,
    List.nodup_append, List.nodup_cons, List.mem_append, List.mem_cons,
    List.disjoint_append_left, List.disjoint_append_right, List.disjoint_cons_left,
    List.disjoint_cons_right, not_or, paddrs_nil, List.disjoint_nil_left,
    List.disjoint_nil_right, List.not_mem_nil, List.nil_append, List.nodup_nil,
    not_false_eq_true, true_and, and_true] at hn
  casesm* _ ∧ _
  have hPU : some P ≠ U.top := tree.ne_top_of_not_mem (by assumption)
  obtain ⟨m0, e0, r0, a0⟩ := l_rotate_spec (p := (.L g cg vg U) :: q) h
  have hP0 := Rep.cell (p := (.L k ck vk kl) :: (.L g cg vg U) :: q) r0
  obtain ⟨m1, e1, r1, a1⟩ := Rep.set_color (p := (.L g cg vg U) :: q) r0 black
  have hk1 := Rep.cell (p := (.L g cg vg U) :: q) r1
  have hP1 := Rep.cell (p := (.L k black vk kl) :: (.L g cg vg U) :: q) r1
  obtain ⟨m2, e2, r2, a2⟩ := Rep.set_color (p := q) r1 red
  have hk2 := Rep.cell (p := (.L g red vg U) :: q) r2
  have hP2 := Rep.cell (p := (.L k black vk kl) :: (.L g red vg U) :: q) r2
  obtain ⟨m3, e3, r3, a3⟩ := r_rotate_spec (p := q) r2
  refine ⟨m3, ?_, r3, a0.trans (a1.trans (a2.trans a3))⟩
  simp [map._insert_fix_body, get_parent_eq hk, get_parent_eq hP, get_r_eq hg, get_l_eq hg, hu,
    hU, get_l_eq hP, get_r_eq hP, hPU, e0, get_parent_eq hP0, e1, get_parent_eq hk1,
    get_parent_eq hP1, e2, get_parent_eq hk2, get_parent_eq hP2, e3, ptop, frame.addr]

/-- One iteration of `_insert_fix` when the uncle is red (parent on the `L` side of the
grandparent, `k` on the `L` side of the parent). -/
theorem fix_body_red_LL
    {m : map K V} {q : List (frame K V)} {g P k u : Nat}
    {cg cP ck : color_type} {vg vP vk vu : Option (K × V)} {ul ur S kl kr : tree K V}
    (h : Rep m (fill q (.node g cg vg (.node P cP vP (.node k ck vk kl kr) S) (.node u red vu ul ur)))) :
    ∃ m2, map._insert_fix_body m (some k) = some (m2, some g) ∧
      Rep m2 (fill q (.node g red vg (.node P black vP (.node k ck vk kl kr) S) (.node u black vu ul ur))) ∧
      SameAux m m2 := by
  have hk := Rep.cell (p := (.L P cP vP S) :: (.L g cg vg (.node u red vu ul ur)) :: q) h
  have hP := Rep.cell (p := (.L g cg vg (.node u red vu ul ur)) :: q) h
  have hg := Rep.cell (p := q) h
  have hu := Rep.cell (p := (.R g cg vg (.node P cP vP (.node k ck vk kl kr) S)) :: q) h
  have hn := h.nodup
  simp only [nodup_fill_iff, nodup_paddrs_L, nodup_paddrs_R, disjoint_paddrs_L,
    disjoint_paddrs_R, mem_paddrs_L, mem_paddrs_R, tree.addrs_node, tree.addrs_nil,
    List.nodup_append, List.nodup_cons, List.mem_append, List.mem_cons,
    List.disjoint_append_left, List.disjoint_append_right, List.disjoint_cons_left,
    List.disjoint_cons_right, not_or, paddrs_nil, List.disjoint_nil_left,
    List.disjoint_nil_right, List.not_mem_nil, List.nil_append, List.nodup_nil,
    not_false_eq_true, true_and, and_true] at hn
  casesm* _ ∧ _
  have hPu : P ≠ u := by first | assumption | exact Ne.symm (by assumption)
  obtain ⟨m1, e1, r1, a1⟩ := Rep.set_color (p := (.R g cg vg (.node P cP vP (.node k ck vk kl kr) S)) :: q) h black
  have hk1 := Rep.cell (p := (.L P cP vP S) :: (.L g cg vg (.node u black vu ul ur)) :: q) r1
  obtain ⟨m2, e2, r2, a2⟩ := Rep.set_color (p := (.L g cg vg (.node u black vu ul ur)) :: q) r1 black
  have hk2 := Rep.cell (p := (.L P black vP S) :: (.L g cg vg (.node u black vu ul ur)) :: q) r2
  have hP2 := Rep.cell (p := (.L g cg vg (.node u black vu ul ur)) :: q) r2
  obtain ⟨m3, e3, r3, a3⟩ := Rep.set_color (p := q) r2 red
  have hk3 := Rep.cell (p := (.L P black vP S) :: (.L g red vg (.node u black vu ul ur)) :: q) r3
  have hP3 := Rep.cell (p := (.L g red vg (.node u black vu ul ur)) :: q) r3
  refine ⟨m3, ?_, r3, a1.trans (a2.trans a3)⟩
  simp [map._insert_fix_body, map._insert_fix_recolor, map.is_red, get_parent_eq hk,
    get_parent_eq hP, get_r_eq hg, get_l_eq hg, get_color_eq hu, hPu, e1, get_parent_eq hk1,
    e2, get_parent_eq hk2, get_parent_eq hP2, e3, get_parent_eq hk3, get_parent_eq hP3, ptop,
    frame.addr]

/-- One iteration of `_insert_fix` when the uncle is red (parent on the `L` side of the
grandparent, `k` on the `R` side of the parent). -/
theorem fix_body_red_LR
    {m : map K V} {q : List (frame K V)} {g P k u : Nat}
    {cg cP ck : color_type} {vg vP vk vu : Option (K × V)} {ul ur S kl kr : tree K V}
    (h : Rep m (fill q (.node g cg vg (.node P cP vP S (.node k ck vk kl kr)) (.node u red vu ul ur)))) :
    ∃ m2, map._insert_fix_body m (some k) = some (m2, some g) ∧
      Rep m2 (fill q (.node g red vg (.node P black vP S (.node k ck vk kl kr)) (.node u black vu ul ur))) ∧
      SameAux m m2 := by
  have hk := Rep.cell (p := (.R P cP vP S) :: (.L g cg vg (.node u red vu ul ur)) :: q) h
  have hP := Rep.cell (p := (.L g cg vg (.node u red vu ul ur)) :: q) h
  have hg := Rep.cell (p := q) h
  have hu := Rep.cell (p := (.R g cg vg (.node P cP vP S (.node k ck vk kl kr))) :: q) h
  have hn := h.nodup
  simp only [nodup_fill_iff, nodup_paddrs_L, nodup_paddrs_R, disjoint_paddrs_L,
    disjoint_paddrs_R, mem_paddrs_L, mem_paddrs_R, tree.addrs_node, tree.addrs_nil,
    List.nodup_append, List.nodup_cons, List.mem_append, List.mem_cons,
    List.disjoint_append_left, List.disjoint_append_right, List.disjoint_cons_left,
    List.disjoint_cons_right, not_or, paddrs_nil, List.disjoint_nil_left,
    List.disjoint_nil_right, List.not_mem_nil, List.nil_append, List.nodup_nil,
    not_false_eq_true, true_and, and_true] at hn
  casesm* _ ∧ _
  have hPu : P ≠ u := by first | assumption | exact Ne.symm (by assumption)
  obtain ⟨m1, e1, r1, a1⟩ := Rep.set_color (p := (.R g cg vg (.node P cP vP S (.node k ck vk kl kr))) :: q) h black
  have hk1 := Rep.cell (p := (.R P cP vP S) :: (.L g cg vg (.node u black vu ul ur)) :: q) r1
  obtain ⟨m2, e2, r2, a2⟩ := Rep.set_color (p := (.L g cg vg (.node u black vu ul ur)) :: q) r1 black
  have hk2 := Rep.cell (p := (.R P black vP S) :: (.L g cg vg (.node u black vu ul ur)) :: q) r2
  have hP2 := Rep.cell (p := (.L g cg vg (.node u black vu ul ur)) :: q) r2
  obtain ⟨m3, e3, r3, a3⟩ := Rep.set_color (p := q) r2 red
  have hk3 := Rep.cell (p := (.R P black vP S) :: (.L g red vg (.node u black vu ul ur)) :: q) r3
  have hP3 := Rep.cell (p := (.L g red vg (.node u black vu ul ur)) :: q) r3
  refine ⟨m3, ?_, r3, a1.trans (a2.trans a3)⟩
  simp [map._insert_fix_body, map._insert_fix_recolor, map.is_red, get_parent_eq hk,
    get_parent_eq hP, get_r_eq hg, get_l_eq hg, get_color_eq hu, hPu, e1, get_parent_eq hk1,
    e2, get_parent_eq hk2, get_parent_eq hP2, e3, get_parent_eq hk3, get_parent_eq hP3, ptop,
    frame.addr]

end ft

namespace ft
open color_type
variable {K V : Type}

/-! ### Red-black shape of trees and paths -/

theorem Bal.color_eq {t : tree K V} {c : color_type} {n : Nat} (h : Bal t c n) :
    t.color = c := by
  cases h <;> rfl

/-- Filling a balanced path with a balanced subtree of the expected colour and height. -/
theorem PathBal.fill {p : List (frame K V)} {t : tree K V} {c : color_type} {n : Nat}
    (hp : PathBal p c n) (ht : Bal t c n) : ∃ c0 n0, Bal (fill p t) c0 n0 := by
  induction hp generalizing t with
  | root => exact ⟨_, _, ht⟩
  | redL hr _ ih => exact ih (Bal.red ht hr)
  | redR hl _ ih => exact ih (Bal.red hl ht)
  | blackL hr _ ih => exact ih (Bal.black ht hr)
  | blackR hl _ ih => exact ih (Bal.black hl ht)

/-- A path below a black node accepts a subtree of either colour. -/
theorem PathBal.any_color {p : List (frame K V)} {c : color_type} {n : Nat}
    (hp : PathBal p c n) (h : ∀ f q, p = f :: q → f.color = black) (c2 : color_type) :
    PathBal p c2 n := by
  cases hp with
  | root => exact PathBal.root
  | redL hr hq => exact absurd (h _ _ rfl) (by simp [frame.color])
  | redR hl hq => exact absurd (h _ _ rfl) (by simp [frame.color])
  | blackL hr hq => exact PathBal.blackL hr hq
  | blackR hl hq => exact PathBal.blackR hl hq

/-- A balanced tree splits at any position below data nodes into a balanced subtree and a
balanced path. -/
theorem Bal.unfill {p : List (frame K V)} {t : tree K V} {c0 : color_type} {n0 : Nat}
    (h : Bal (fill p t) c0 n0) (hd : ∀ f ∈ p, f.val ≠ none) :
    ∃ c n, Bal t c n ∧ PathBal p c n := by
  induction p generalizing t with
  | nil => exact ⟨_, _, h, PathBal.root⟩
  | cons f q ih =>
    have hf := hd f (List.mem_cons_self _ _)
    have hq := fun g hg => hd g (List.mem_cons_of_mem _ hg)
    cases f with
    | L a c v r =>
      obtain ⟨c1, n1, h1, hq⟩ := ih (t := .node a c v t r) h hq
      cases h1 with
      | sentinel => simp [frame.val] at hf
      | red hl hr => exact ⟨_, _, hl, PathBal.redL hr hq⟩
      | black hl hr => exact ⟨_, _, hl, PathBal.blackL hr hq⟩
    | R a c v l =>
      obtain ⟨c1, n1, h1, hq⟩ := ih (t := .node a c v l t) h hq
      cases h1 with
      | sentinel => simp [frame.val] at hf
      | red hl hr => exact ⟨_, _, hr, PathBal.redR hl hq⟩
      | black hl hr => exact ⟨_, _, hr, PathBal.blackR hl hq⟩

/-- The nodes above a node of a balanced tree are data nodes. -/
theorem Bal.data_path {p : List (frame K V)} {t : tree K V} {c0 : color_type} {n0 : Nat}
    (h : Bal (fill p t) c0 n0) (ht : t ≠ .nil) : ∀ f ∈ p, f.val ≠ none := by
  induction p generalizing t with
  | nil => simp
  | cons f q ih =>
    intro g hg
    cases f with
    | L a c v r =>
      have h2 := ih (t := .node a c v t r) h (by simp)
      rcases List.mem_cons.1 hg with rfl | hg
      · obtain ⟨c1, n1, h1, -⟩ := Bal.unfill (p := q) (t := .node a c v t r) h h2
        cases h1 <;> simp_all [frame.val]
      · exact h2 g hg
    | R a c v l =>
      have h2 := ih (t := .node a c v l t) h (by simp)
      rcases List.mem_cons.1 hg with rfl | hg
      · obtain ⟨c1, n1, h1, -⟩ := Bal.unfill (p := q) (t := .node a c v l t) h h2
        cases h1 <;> simp_all [frame.val]
      · exact h2 g hg

/-- Painting the root of a balanced tree black. -/
theorem Bal.blacken {a : Nat} {c c0 : color_type} {x : K × V} {l r : tree K V} {n : Nat}
    (h : Bal (.node a c (some x) l r) c0 n) :
    ∃ n2, Bal (.node a color_type.black (some x) l r) color_type.black n2 := by
  cases h with
  | red hl hr => exact ⟨_, Bal.black hl hr⟩
  | black hl hr => exact ⟨_, Bal.black hl hr⟩

theorem RootBlack.tail {f : frame K V} {q : List (frame K V)} (h : RootBlack (f :: q)) :
    RootBlack q := by
  cases q with
  | nil => trivial
  | cons g r => exact h

theorem fill_ne_nil {p : List (frame K V)} {t : tree K V} (h : t ≠ .nil) : fill p t ≠ .nil := by
  induction p generalizing t with
  | nil => exact h
  | cons f q ih => cases f <;> exact ih (by simp)

theorem fill_top_mem_paddrs {f : frame K V} {q : List (frame K V)} {t : tree K V} {b : Nat}
    (h : (fill (f :: q) t).top = some b) : b ∈ paddrs (f :: q) := by
  induction q generalizing f t with
  | nil =>
    cases f <;> simp at h <;> simp [mem_paddrs_L, mem_paddrs_R, h]
  | cons g q ih =>
    cases f with
    | L a c v r =>
      have := ih (f := g) (t := .node a c v t r) h
      exact mem_paddrs_L.2 (Or.inr (Or.inr this))
    | R a c v l =>
      have := ih (f := g) (t := .node a c v l t) h
      exact mem_paddrs_R.2 (Or.inr (Or.inr this))

/-- A node that has a parent is not the root. -/
theorem Rep.ne_root {m : map K V} {f : frame K V} {q : List (frame K V)} {t : tree K V}
    (h : Rep m (fill (f :: q) t)) {a : Nat} (ha : a ∈ t.addrs) : some a ≠ m._root := by
  intro e
  have h1 := fill_top_mem_paddrs (h.root.symm.trans e.symm)
  exact (nodup_fill.1 h.nodup).2.2 a ha h1

/-- The final statement `_root->color = black` of `_insert_fix` and `erase`. -/
theorem Rep.finish {m : map K V} {T : tree K V} {c0 : color_type} {n0 : Nat}
    (h : Rep m T) (hb : Bal T c0 n0) (hne : T ≠ .nil) :
    ∃ m2 T2, ft.set_color m m._root black = some m2 ∧ Rep m2 T2 ∧ SameAux m m2 ∧
      T2.elems = T.elems ∧ ∃ n2, Bal T2 black n2 := by
  cases hb with
  | nil => exact absurd rfl hne
  | sentinel a =>
    obtain ⟨m2, e, r, s⟩ := Rep.set_color (p := []) h black
    rw [h.root]
    exact ⟨m2, _, e, r, s, rfl, _, Bal.sentinel a⟩
  | red hl hr =>
    obtain ⟨m2, e, r, s⟩ := Rep.set_color (p := []) h black
    rw [h.root]
    exact ⟨m2, _, e, r, s, rfl, _, Bal.black hl hr⟩
  | black hl hr =>
    obtain ⟨m2, e, r, s⟩ := Rep.set_color (p := []) h black
    rw [h.root]
    exact ⟨m2, _, e, r, s, rfl, _, Bal.black hl hr⟩

/-- The colour test on the parent of a node. -/
theorem Rep.is_red_parent {m : map K V} {f : frame K V} {q : List (frame K V)} {t : tree K V}
    (h : Rep m (fill (f :: q) t)) :
    map.is_red m (some f.addr) = some (decide (f.color = red)) := by
  cases f with
  | L a c v r => exact Rep.is_red_top (p := q) (t := .node a c v t r) h
  | R a c v l => exact Rep.is_red_top (p := q) (t := .node a c v l t) h

/-- The loop of `_insert_fix` stops at a node whose parent is absent or black. -/
theorem insert_fix_done {m : map K V} {p : List (frame K V)} {k : Nat} {ck : color_type}
    {vk : Option (K × V)} {kl kr : tree K V} (h : Rep m (fill p (.node k ck vk kl kr)))
    (hp : ∀ f q, p = f :: q → f.color = black) (fuel : Nat) :
    map._insert_fix (fuel + 1) m (some k) = set_color m m._root black := by
  cases p with
  | nil => simp [map._insert_fix, get_parent_eq h.cell, ptop, map.is_red]
  | cons f q =>
    simp [map._insert_fix, get_parent_eq h.cell, ptop, h.is_red_parent, hp f q rfl]

/-- One turn of the loop of `_insert_fix` at a node whose parent is red. -/
theorem insert_fix_step {m : map K V} {f : frame K V} {q : List (frame K V)} {k : Nat}
    {ck : color_type} {vk : Option (K × V)} {kl kr : tree K V}
    (h : Rep m (fill (f :: q) (.node k ck vk kl kr))) (hf : f.color = red) {m2 : map K V}
    {k2 : ptr} (e : map._insert_fix_body m (some k) = some (m2, k2)) (fuel : Nat) :
    map._insert_fix (fuel + 1) m (some k) =
      if k2 = m2._root then set_color m2 m2._root black else map._insert_fix fuel m2 k2 := by
  simp [map._insert_fix, get_parent_eq h.cell, ptop, h.is_red_parent, hf, e]

/-- After a rotation step the loop of `_insert_fix` stops. -/
theorem insert_fix_after {m : map K V} {f : frame K V} {q : List (frame K V)} {k : Nat}
    {ck : color_type} {vk : Option (K × V)} {kl kr : tree K V}
    (h : Rep m (fill (f :: q) (.node k ck vk kl kr))) (hf : f.color = black) (fuel : Nat) :
    (if some k = m._root then set_color m m._root black
      else map._insert_fix (fuel + 1) m (some k)) = set_color m m._root black := by
  rw [if_neg (h.ne_root (by simp))]
  exact insert_fix_done h (by intro f2 q2 e; cases e; exact hf) fuel

end ft

namespace ft
open color_type
variable {K V : Type}

set_option maxHeartbeats 4000000 in
/-- Member `_insert_fix` started at a red node with balanced black children restores the
red-black shape, keeps the in-order sequence and leaves the root black. -/
theorem insert_fix_spec : ∀ (fuel : Nat) (m : map K V) (p : List (frame K V)) (k : Nat)
    (xk : K × V) (kl kr : tree K V) (n : Nat),
    Rep m (fill p (.node k red (some xk) kl kr)) → Bal kl black n → Bal kr black n →
    PathBal p black n → RootBlack p → p.length + 2 ≤ fuel →
    ∃ m2 T2, map._insert_fix fuel m (some k) = some m2 ∧ Rep m2 T2 ∧ SameAux m m2 ∧
      T2.elems = (fill p (.node k red (some xk) kl kr)).elems ∧ ∃ n2, Bal T2 black n2 := by
  intro fuel
  induction fuel with
  | zero => intro m p k xk kl kr n _ _ _ _ _ hl; omega
  | succ fuel ih =>
    intro m p k xk kl kr n h hkl hkr hp hrb hlen
    have hK : Bal (.node k red (some xk) kl kr) red n := Bal.red hkl hkr
    cases hp with
    | root =>
      rw [insert_fix_done h (by simp)]
      exact Rep.finish h hK (by simp)
    | blackL hS hq =>
      rw [insert_fix_done h (by intro f q e; cases e; rfl)]
      obtain ⟨c0, n0, hb⟩ := (PathBal.blackL (c := red) hS hq).fill hK
      exact Rep.finish h hb (fill_ne_nil (by simp))
    | blackR hS hq =>
      rw [insert_fix_done h (by intro f q e; cases e; rfl)]
      obtain ⟨c0, n0, hb⟩ := (PathBal.blackR (c := red) hS hq).fill hK
      exact Rep.finish h hb (fill_ne_nil (by simp))
    | @redL P xP S q _ hS hq =>
      cases hq with
      | root => exact absurd hrb (by simp [RootBlack, frame.color])
      | @blackL g xg U q2 _ c2 _ hU hq2 =>
        by_cases hUr : U.color = red
        · cases hU with
          | nil => simp [tree.color] at hUr
          | sentinel => simp [tree.color] at hUr
          | black => simp [tree.color] at hUr
          | @red u xu ul ur _ hul hur =>
            obtain ⟨m2, e2, r2, a2⟩ := fix_body_red_LL (q := q2) h
            rw [insert_fix_step h rfl e2]
            have hPb := Bal.black (a := P) (x := xP) hK hS
            have hUb := Bal.black (x := xu) (a := u) hul hur
            by_cases hroot : some g = m2._root
            · rw [if_pos hroot]
              cases q2 with
              | nil =>
                obtain ⟨m3, T3, e3, r3, a3, el, bl⟩ := Rep.finish r2 (Bal.red hPb hUb) (by simp)
                exact ⟨m3, T3, e3, r3, a2.trans a3, el.trans (by simp [fill_elems]), bl⟩
              | cons f2 q3 => exact absurd hroot (Rep.ne_root (f := f2) (q := q3) r2 (by simp))
            · rw [if_neg hroot]
              obtain ⟨m3, T3, e3, r3, a3, el, bl⟩ := ih m2 q2 g xg _ _ (n + 1) r2 hPb hUb hq2
                hrb.tail.tail (by simp at hlen ⊢; omega)
              exact ⟨m3, T3, e3, r3, a2.trans a3, el.trans (by simp [fill_elems]), bl⟩
        · have hUb : Bal U black n := by
            have hc := hU.color_eq
            cases c2 with
            | red => exact absurd hc hUr
            | black => exact hU
          obtain ⟨m2, e2, r2, a2⟩ := fix_body_outer_L (q := q2) h hUr
          rw [insert_fix_step h rfl e2]
          obtain ⟨fuel2, rfl⟩ : ∃ f, fuel = f + 1 := ⟨fuel - 1, by simp at hlen; omega⟩
          rw [insert_fix_after (f := (.L P black (some xP) (.node g red (some xg) S U))) (q := q2) r2 rfl]
          obtain ⟨c0, n0, hb⟩ := hq2.fill (Bal.black hK (Bal.red hS hUb))
          obtain ⟨m3, T3, e3, r3, a3, el, bl⟩ := Rep.finish r2 hb (fill_ne_nil (by simp))
          exact ⟨m3, T3, e3, r3, a2.trans a3, el.trans (by simp [fill_elems]), bl⟩
      | @blackR g xg U q2 _ c2 _ hU hq2 =>
        by_cases hUr : U.color = red
        · cases hU with
          | nil => simp [tree.color] at hUr
          | sentinel => simp [tree.color] at hUr
          | black => simp [tree.color] at hUr
          | @red u xu ul ur _ hul hur =>
            obtain ⟨m2, e2, r2, a2⟩ := fix_body_red_RL (q := q2) h
            rw [insert_fix_step h rfl e2]
            have hPb := Bal.black (a := P) (x := xP) hK hS
            have hUb := Bal.black (x := xu) (a := u) hul hur
            by_cases hroot : some g = m2._root
            · rw [if_pos hroot]
              cases q2 with
              | nil =>
                obtain ⟨m3, T3, e3, r3, a3, el, bl⟩ := Rep.finish r2 (Bal.red hUb hPb) (by simp)
                exact ⟨m3, T3, e3, r3, a2.trans a3, el.trans (by simp [fill_elems]), bl⟩
              | cons f2 q3 => exact absurd hroot (Rep.ne_root (f := f2) (q := q3) r2 (by simp))
            · rw [if_neg hroot]
              obtain ⟨m3, T3, e3, r3, a3, el, bl⟩ := ih m2 q2 g xg _ _ (n + 1) r2 hUb hPb hq2
                hrb.tail.tail (by simp at hlen ⊢; omega)
              exact ⟨m3, T3, e3, r3, a2.trans a3, el.trans (by simp [fill_elems]), bl⟩
        · have hUb : Bal U black n := by
            have hc := hU.color_eq
            cases c2 with
            | red => exact absurd hc hUr
            | black => exact hU
          obtain ⟨m2, e2, r2, a2⟩ := fix_body_inner_R (q := q2) h hUr
          rw [insert_fix_step h rfl e2]
          obtain ⟨fuel2, rfl⟩ : ∃ f, fuel = f + 1 := ⟨fuel - 1, by simp at hlen; omega⟩
          rw [insert_fix_after (f := (.R k black (some xk) (.node g red (some xg) U kl))) (q := q2) r2 rfl]
          obtain ⟨c0, n0, hb⟩ := hq2.fill (Bal.black (Bal.red hUb hkl) (Bal.red hkr hS))
          obtain ⟨m3, T3, e3, r3, a3, el, bl⟩ := Rep.finish r2 hb (fill_ne_nil (by simp))
          exact ⟨m3, T3, e3, r3, a2.trans a3, el.trans (by simp [fill_elems]), bl⟩

    | @redR P xP S q _ hS hq =>
      cases hq with
      | root => exact absurd hrb (by simp [RootBlack, frame.color])
      | @blackL g xg U q2 _ c2 _ hU hq2 =>
        by_cases hUr : U.color = red
        · cases hU with
          | nil => simp [tree.color] at hUr
          | sentinel => simp [tree.color] at hUr
          | black => simp [tree.color] at hUr
          | @red u xu ul ur _ hul hur =>
            obtain ⟨m2, e2, r2, a2⟩ := fix_body_red_LR (q := q2) h
            rw [insert_fix_step h rfl e2]
            have hPb := Bal.black (a := P) (x := xP) hS hK
            have hUb := Bal.black (x := xu) (a := u) hul hur
            by_cases hroot : some g = m2._root
            · rw [if_pos hroot]
              cases q2 with
              | nil =>
                obtain ⟨m3, T3, e3, r3, a3, el, bl⟩ := Rep.finish r2 (Bal.red hPb hUb) (by simp)
                exact ⟨m3, T3, e3, r3, a2.trans a3, el.trans (by simp [fill_elems]), bl⟩
              | cons f2 q3 => exact absurd hroot (Rep.ne_root (f := f2) (q := q3) r2 (by simp))
            · rw [if_neg hroot]
              obtain ⟨m3, T3, e3, r3, a3, el, bl⟩ := ih m2 q2 g xg _ _ (n + 1) r2 hPb hUb hq2
                hrb.tail.tail (by simp at hlen ⊢; omega)
              exact ⟨m3, T3, e3, r3, a2.trans a3, el.trans (by simp [fill_elems]), bl⟩
        · have hUb : Bal U black n := by
            have hc := hU.color_eq
            cases c2 with
            | red => exact absurd hc hUr
            | black => exact hU
          obtain ⟨m2, e2, r2, a2⟩ := fix_body_inner_L (q := q2) h hUr
          rw [insert_fix_step h rfl e2]
          obtain ⟨fuel2, rfl⟩ : ∃ f, fuel = f + 1 := ⟨fuel - 1, by simp at hlen; omega⟩
          rw [insert_fix_after (f := (.L k black (some xk) (.node g red (some xg) kr U))) (q := q2) r2 rfl]
          obtain ⟨c0, n0, hb⟩ := hq2.fill (Bal.black (Bal.red hS hkl) (Bal.red hkr hUb))
          obtain ⟨m3, T3, e3, r3, a3, el, bl⟩ := Rep.finish r2 hb (fill_ne_nil (by simp))
          exact ⟨m3, T3, e3, r3, a2.trans a3, el.trans (by simp [fill_elems]), bl⟩
      | @blackR g xg U q2 _ c2 _ hU hq2 =>
        by_cases hUr : U.color = red
        · cases hU with
          | nil => simp [tree.color] at hUr
          | sentinel => simp [tree.color] at hUr
          | black => simp [tree.color] at hUr
          | @red u xu ul ur _ hul hur =>
            obtain ⟨m2, e2, r2, a2⟩ := fix_body_red_RR (q := q2) h
            rw [insert_fix_step h rfl e2]
            have hPb := Bal.black (a := P) (x := xP) hS hK
            have hUb := Bal.black (x := xu) (a := u) hul hur
            by_cases hroot : some g = m2._root
            · rw [if_pos hroot]
              cases q2 with
              | nil =>
                obtain ⟨m3, T3, e3, r3, a3, el, bl⟩ := Rep.finish r2 (Bal.red hUb hPb) (by simp)
                exact ⟨m3, T3, e3, r3, a2.trans a3, el.trans (by simp [fill_elems]), bl⟩
              | cons f2 q3 => exact absurd hroot (Rep.ne_root (f := f2) (q := q3) r2 (by simp))
            · rw [if_neg hroot]
              obtain ⟨m3, T3, e3, r3, a3, el, bl⟩ := ih m2 q2 g xg _ _ (n + 1) r2 hUb hPb hq2
                hrb.tail.tail (by simp at hlen ⊢; omega)
              exact ⟨m3, T3, e3, r3, a2.trans a3, el.trans (by simp [fill_elems]), bl⟩
        · have hUb : Bal U black n := by
            have hc := hU.color_eq
            cases c2 with
            | red => exact absurd hc hUr
            | black => exact hU
          obtain ⟨m2, e2, r2, a2⟩ := fix_body_outer_R (q := q2) h hUr
          rw [insert_fix_step h rfl e2]
          obtain ⟨fuel2, rfl⟩ : ∃ f, fuel = f + 1 := ⟨fuel - 1, by simp at hlen; omega⟩
          rw [insert_fix_after (f := (.R P black (some xP) (.node g red (some xg) U S))) (q := q2) r2 rfl]
          obtain ⟨c0, n0, hb⟩ := hq2.fill (Bal.black (Bal.red hUb hS) hK)
          obtain ⟨m3, T3, e3, r3, a3, el, bl⟩ := Rep.finish r2 hb (fill_ne_nil (by simp))
          exact ⟨m3, T3, e3, r3, a2.trans a3, el.trans (by simp [fill_elems]), bl⟩

end ft

namespace ft
open color_type
variable {K V : Type} [DecidableEq K]

theorem List.nodup_insert_fresh {pre post : List Nat} {b : Nat} (h : (pre ++ post).Nodup)
    (hb : b ∉ pre ++ post) : (pre ++ b :: post).Nodup :=
  List.nodup_middle.2 (List.nodup_cons.2 ⟨hb, h⟩)

/-- A state that holds a tree with one more node, placed at the fresh address, represents it. -/
theorem Rep.of_fresh {m m2 : map K V} {T T2 : tree K V} (h : Rep m T) (pre post : List Nat)
    (hT : T.addrs = pre ++ post) (hT2 : T2.addrs = pre ++ m.brk :: post)
    (hb : m2.brk = m.brk + 1) (hr : m2._root = T2.top) (hs : Shaped m2.mem none T2) :
    Rep m2 T2 := by
  have hf : m.brk ∉ pre ++ post := fun hm => Nat.lt_irrefl _ (h.bound _ (hT ▸ hm))
  refine ⟨hr, hs, ?_, ?_⟩
  · rw [hT2]; exact List.nodup_insert_fresh (hT ▸ h.nodup) hf
  · intro a ha
    rw [hT2] at ha
    rw [hb]
    rcases List.mem_append.1 ha with ha | ha
    · exact Nat.lt_succ_of_lt (h.bound a (hT ▸ List.mem_append_left _ ha))
    · rcases List.mem_cons.1 ha with rfl | ha
      · exact Nat.lt_succ_self _
      · exact Nat.lt_succ_of_lt (h.bound a (hT ▸ List.mem_append_right _ ha))

/-- The branch of `insert_body` that hangs a new node below a data node with no child on the
chosen side (left). -/
theorem insert_body_attach_l {m : map K V} {p : List (frame K V)} {a : Nat}
    {c : color_type} {nv : K × V} {s : tree K V}
    (h : Rep m (fill p (.node a c (some nv) .nil s)))
    (x : K × V) (hne : x.1 ≠ nv.1) (hc : m._cmp_k x.1 nv.1 = true) (fuel : Nat) :
    ∃ m2, map.insert_body (fuel + 1) m (some a) x = some (m2, some m.brk, true) ∧
      Rep m2 (fill p (.node a c (some nv) (.node m.brk red (some x) .nil .nil) s)) ∧
      m2.brk = m.brk + 1 ∧ m2._sz = m._sz ∧ m2._cmp_k = m._cmp_k := by
  suffices H : ∀ Q : map K V → Prop,
      (∀ m2, Rep m2 (fill p (.node a c (some nv) (.node m.brk red (some x) .nil .nil) s)) →
        m2.brk = m.brk + 1 ∧ m2._sz = m._sz ∧ m2._cmp_k = m._cmp_k → Q m2) →
      ∃ m2, map.insert_body (fuel + 1) m (some a) x = some (m2, some m.brk, true) ∧ Q m2 from
    H _ (fun _ a b => ⟨a, b⟩)
  intro Q hQ
  have hn := h.nodup
  have hf : m.brk ∉ (fill p (.node a c (some nv) .nil s)).addrs := fun hb => Nat.lt_irrefl _ (h.bound _ hb)
  simp only [nodup_fill_iff, nodup_paddrs_L, nodup_paddrs_R, disjoint_paddrs_L,
    disjoint_paddrs_R, mem_paddrs_L, mem_paddrs_R, tree.addrs_node, tree.addrs_nil,
    List.nodup_append, List.nodup_cons, List.mem_append, List.mem_cons,
    List.disjoint_append_left, List.disjoint_append_right, List.disjoint_cons_left,
    List.disjoint_cons_right, not_or, paddrs_nil, List.disjoint_nil_left,
    List.disjoint_nil_right, List.not_mem_nil, List.nil_append, List.nodup_nil,
    not_false_eq_true, true_and, and_true] at hn
  simp only [mem_fill_addrs, mem_paddrs_L, mem_paddrs_R, tree.addrs_node, tree.addrs_nil,
    List.mem_append, List.mem_cons, List.not_mem_nil, not_or, false_or, or_false] at hf
  casesm* _ ∧ _
  have ha := h.cell
  obtain ⟨sp, -, -, ss⟩ := shaped_fill.1 h.shaped
  have hab : a ≠ m.brk := by first | assumption | exact Ne.symm (by assumption)
  simp only [tree.top_nil] at ha
  simp [map.insert_body, get_val_eq ha, hne, hc, new_node, set_l, set_r, set_parent, store,
    get_l, get_r, ha, hab, hab.symm, node_type.mk_val]
  refine hQ _ ?_ ⟨rfl, rfl, rfl⟩
  refine Rep.of_fresh h ((pbefore p).map Prod.fst) (a :: s.addrs ++ (pafter p).map Prod.fst)
    (by simp [fill_addrs]) (by simp [fill_addrs]) rfl (h.root.trans (fill_top_congr (by simp))) ?_
  refine shaped_fill.2 ⟨?_, ?_, ⟨?_, trivial, trivial⟩, ?_⟩
  · refine sp.agree_path ?_
    repeat (first | exact (fun _ _ => rfl) | refine agree_update ?_ (by assumption) _)
  · simp [hab, hab.symm]
  · simp [hab, hab.symm]
  · refine ss.agree ?_
    repeat (first | exact (fun _ _ => rfl) | refine agree_update ?_ (by assumption) _)

/-- The branch of `insert_body` that hangs a new node below a data node with no child on the
chosen side (right). -/
theorem insert_body_attach_r {m : map K V} {p : List (frame K V)} {a : Nat}
    {c : color_type} {nv : K × V} {s : tree K V}
    (h : Rep m (fill p (.node a c (some nv) s .nil)))
    (x : K × V) (hne : x.1 ≠ nv.1) (hc : m._cmp_k x.1 nv.1 = false) (fuel : Nat) :
    ∃ m2, map.insert_body (fuel + 1) m (some a) x = some (m2, some m.brk, true) ∧
      Rep m2 (fill p (.node a c (some nv) s (.node m.brk red (some x) .nil .nil))) ∧
      m2.brk = m.brk + 1 ∧ m2._sz = m._sz ∧ m2._cmp_k = m._cmp_k := by
  suffices H : ∀ Q : map K V → Prop,
      (∀ m2, Rep m2 (fill p (.node a c (some nv) s (.node m.brk red (some x) .nil .nil))) →
        m2.brk = m.brk + 1 ∧ m2._sz = m._sz ∧ m2._cmp_k = m._cmp_k → Q m2) →
      ∃ m2, map.insert_body (fuel + 1) m (some a) x = some (m2, some m.brk, true) ∧ Q m2 from
    H _ (fun _ a b => ⟨a, b⟩)
  intro Q hQ
  have hn := h.nodup
  have hf : m.brk ∉ (fill p (.node a c (some nv) s .nil)).addrs := fun hb => Nat.lt_irrefl _ (h.bound _ hb)
  simp only [nodup_fill_iff, nodup_paddrs_L, nodup_paddrs_R, disjoint_paddrs_L,
    disjoint_paddrs_R, mem_paddrs_L, mem_paddrs_R, tree.addrs_node, tree.addrs_nil,
    List.nodup_append, List.nodup_cons, List.mem_append, List.mem_cons,
    List.disjoint_append_left, List.disjoint_append_right, List.disjoint_cons_left,
    List.disjoint_cons_right, not_or, paddrs_nil, List.disjoint_nil_left,
    List.disjoint_nil_right, List.not_mem_nil, List.nil_append, List.nodup_nil,
    not_false_eq_true, true_and, and_true] at hn
  simp only [mem_fill_addrs, mem_paddrs_L, mem_paddrs_R, tree.addrs_node, tree.addrs_nil,
    List.mem_append, List.mem_cons, List.not_mem_nil, not_or, false_or, or_false] at hf
  casesm* _ ∧ _
  have ha := h.cell
  obtain ⟨sp, -, ss, -⟩ := shaped_fill.1 h.shaped
  have hab : a ≠ m.brk := by first | assumption | exact Ne.symm (by assumption)
  simp only [tree.top_nil] at ha
  simp [map.insert_body, get_val_eq ha, hne, hc, new_node, set_l, set_r, set_parent, store,
    get_l, get_r, ha, hab, hab.symm, node_type.mk_val]
  refine hQ _ ?_ ⟨rfl, rfl, rfl⟩
  refine Rep.of_fresh h ((pbefore p).map Prod.fst ++ s.addrs ++ [a]) ((pafter p).map Prod.fst)
    (by simp [fill_addrs]) (by simp [fill_addrs]) rfl (h.root.trans (fill_top_congr (by simp))) ?_
  refine shaped_fill.2 ⟨?_, ?_, ?_, ⟨?_, trivial, trivial⟩⟩
  · refine sp.agree_path ?_
    repeat (first | exact (fun _ _ => rfl) | refine agree_update ?_ (by assumption) _)
  · simp [hab, hab.symm]
  · refine ss.agree ?_
    repeat (first | exact (fun _ _ => rfl) | refine agree_update ?_ (by assumption) _)
  · simp [hab, hab.symm]

/-- The branch of `insert_body` for an end node that is the right child of its parent:
the new node takes the place of the end node, which becomes its right child. -/
theorem insert_body_end_R {m : map K V} {p : List (frame K V)} {a e : Nat}
    {c ce : color_type} {v : Option (K × V)} {s el er : tree K V}
    (h : Rep m (fill ((.R a c v s) :: p) (.node e ce none el er)))
    (x : K × V) (fuel : Nat) :
    ∃ m2, map.insert_body (fuel + 1) m (some e) x = some (m2, some m.brk, true) ∧
      Rep m2 (fill ((.R a c v s) :: p) (.node m.brk red (some x) .nil (.node e ce none el er))) ∧
      m2.brk = m.brk + 1 ∧ m2._sz = m._sz ∧ m2._cmp_k = m._cmp_k := by
  suffices H : ∀ Q : map K V → Prop,
      (∀ m2, Rep m2 (fill ((.R a c v s) :: p) (.node m.brk red (some x) .nil (.node e ce none el er))) →
        m2.brk = m.brk + 1 ∧ m2._sz = m._sz ∧ m2._cmp_k = m._cmp_k → Q m2) →
      ∃ m2, map.insert_body (fuel + 1) m (some e) x = some (m2, some m.brk, true) ∧ Q m2 from
    H _ (fun _ a b => ⟨a, b⟩)
  intro Q hQ
  have hn := h.nodup
  have hf : m.brk ∉ (fill ((.R a c v s) :: p) (.node e ce none el er)).addrs :=
    fun hb => Nat.lt_irrefl _ (h.bound _ hb)
  simp only [nodup_fill_iff, nodup_paddrs_L, nodup_paddrs_R, disjoint_paddrs_L,
    disjoint_paddrs_R, mem_paddrs_L, mem_paddrs_R, tree.addrs_node, tree.addrs_nil,
    List.nodup_append, List.nodup_cons, List.mem_append, List.mem_cons,
    List.disjoint_append_left, List.disjoint_append_right, List.disjoint_cons_left,
    List.disjoint_cons_right, not_or, paddrs_nil, List.disjoint_nil_left,
    List.disjoint_nil_right, List.not_mem_nil, List.nil_append, List.nodup_nil,
    not_false_eq_true, true_and, and_true] at hn
  simp only [mem_fill_addrs, mem_paddrs_L, mem_paddrs_R, tree.addrs_node, tree.addrs_nil,
    List.mem_append, List.mem_cons, List.not_mem_nil, not_or, false_or, or_false] at hf
  casesm* _ ∧ _
  have he := h.cell
  have hroot : m._root ≠ some e := fun hr => Rep.ne_root h (a := e) (by simp) hr.symm
  obtain ⟨⟨ha, ss, sp⟩, -, sel, ser⟩ := shaped_fill.1 h.shaped
  have d_a_e : a ≠ e := by first | assumption | exact Ne.symm (by assumption)
  have d_e_a : e ≠ a := d_a_e.symm
  have d_a_b : a ≠ m.brk := by first | assumption | exact Ne.symm (by assumption)
  have d_b_a : m.brk ≠ a := d_a_b.symm
  have d_e_b : e ≠ m.brk := by first | assumption | exact Ne.symm (by assumption)
  have d_b_e : m.brk ≠ e := d_e_b.symm
  simp only [tree.top_node, ptop_cons, frame.addr_L, frame.addr_R] at he ha
  simp [map.insert_body, get_val_eq he, new_node, set_l, set_r, set_parent, store,
    get_l, get_r, get_parent, he, ha, hroot, d_a_e, d_e_a, d_a_b, d_b_a, d_e_b, d_b_e, node_type.mk_val]
  refine hQ _ ?_ ⟨rfl, rfl, rfl⟩
  refine Rep.of_fresh h ((pbefore p).map Prod.fst ++ s.addrs ++ [a]) (el.addrs ++ e :: er.addrs ++ (pafter p).map Prod.fst)
    (by simp [fill_addrs, pbefore, pafter]) (by simp [fill_addrs, pbefore, pafter]) rfl
    (h.root.trans (fill_top_cons _ _ _ _)) ?_
  refine shaped_fill.2 ⟨⟨?_, ?_, ?_⟩, ?_, trivial, ⟨?_, ?_, ?_⟩⟩
  · simp [d_a_e, d_e_a, d_a_b, d_b_a, d_e_b, d_b_e]
  · refine ss.agree ?_
    repeat (first | exact (fun _ _ => rfl) | refine agree_update ?_ (by assumption) _)
  · refine sp.agree_path ?_
    repeat (first | exact (fun _ _ => rfl) | refine agree_update ?_ (by assumption) _)
  · simp [d_a_e, d_e_a, d_a_b, d_b_a, d_e_b, d_b_e]
  · simp [d_a_e, d_e_a, d_a_b, d_b_a, d_e_b, d_b_e]
  · refine sel.agree ?_
    repeat (first | exact (fun _ _ => rfl) | refine agree_update ?_ (by assumption) _)
  · refine ser.agree ?_
    repeat (first | exact (fun _ _ => rfl) | refine agree_update ?_ (by assumption) _)

/-- The branch of `insert_body` for an end node that is the left child of its parent:
the new node takes the place of the end node, which becomes its left child. -/
theorem insert_body_end_L {m : map K V} {p : List (frame K V)} {a e : Nat}
    {c ce : color_type} {v : Option (K × V)} {s el er : tree K V}
    (h : Rep m (fill ((.L a c v s) :: p) (.node e ce none el er)))
    (x : K × V) (fuel : Nat) :
    ∃ m2, map.insert_body (fuel + 1) m (some e) x = some (m2, some m.brk, true) ∧
      Rep m2 (fill ((.L a c v s) :: p) (.node m.brk red (some x) (.node e ce none el er) .nil)) ∧
      m2.brk = m.brk + 1 ∧ m2._sz = m._sz ∧ m2._cmp_k = m._cmp_k := by
  suffices H : ∀ Q : map K V → Prop,
      (∀ m2, Rep m2 (fill ((.L a c v s) :: p) (.node m.brk red (some x) (.node e ce none el er) .nil)) →
        m2.brk = m.brk + 1 ∧ m2._sz = m._sz ∧ m2._cmp_k = m._cmp_k → Q m2) →
      ∃ m2, map.insert_body (fuel + 1) m (some e) x = some (m2, some m.brk, true) ∧ Q m2 from
    H _ (fun _ a b => ⟨a, b⟩)
  intro Q hQ
  have hn := h.nodup
  have hf : m.brk ∉ (fill ((.L a c v s) :: p) (.node e ce none el er)).addrs :=
    fun hb => Nat.lt_irrefl _ (h.bound _ hb)
  simp only [nodup_fill_iff, nodup_paddrs_L, nodup_paddrs_R, disjoint_paddrs_L,
    disjoint_paddrs_R, mem_paddrs_L, mem_paddrs_R, tree.addrs_node, tree.addrs_nil,
    List.nodup_append, List.nodup_cons, List.mem_append, List.mem_cons,
    List.disjoint_append_left, List.disjoint_append_right, List.disjoint_cons_left,
    List.disjoint_cons_right, not_or, paddrs_nil, List.disjoint_nil_left,
    List.disjoint_nil_right, List.not_mem_nil, List.nil_append, List.nodup_nil,
    not_false_eq_true, true_and, and_true] at hn
  simp only [mem_fill_addrs, mem_paddrs_L, mem_paddrs_R, tree.addrs_node, tree.addrs_nil,
    List.mem_append, List.mem_cons, List.not_mem_nil, not_or, false_or, or_false] at hf
  casesm* _ ∧ _
  have he := h.cell
  have hroot : m._root ≠ some e := fun hr => Rep.ne_root h (a := e) (by simp) hr.symm
  obtain ⟨⟨ha, ss, sp⟩, -, sel, ser⟩ := shaped_fill.1 h.shaped
  have d_a_e : a ≠ e := by first | assumption | exact Ne.symm (by assumption)
  have d_e_a : e ≠ a := d_a_e.symm
  have d_a_b : a ≠ m.brk := by first | assumption | exact Ne.symm (by assumption)
  have d_b_a : m.brk ≠ a := d_a_b.symm
  have d_e_b : e ≠ m.brk := by first | assumption | exact Ne.symm (by assumption)
  have d_b_e : m.brk ≠ e := d_e_b.symm
  have hes : some e ≠ s.top := tree.ne_top_of_not_mem (by assumption)
  simp only [tree.top_node, ptop_cons, frame.addr_L, frame.addr_R] at he ha
  simp [map.insert_body, get_val_eq he, new_node, set_l, set_r, set_parent, store,
    get_l, get_r, get_parent, he, ha, hroot, hes, d_a_e, d_e_a, d_a_b, d_b_a, d_e_b, d_b_e, node_type.mk_val]
  refine hQ _ ?_ ⟨rfl, rfl, rfl⟩
  refine Rep.of_fresh h ((pbefore p).map Prod.fst ++ (el.addrs ++ e :: er.addrs)) (a :: s.addrs ++ (pafter p).map Prod.fst)
    (by simp [fill_addrs, pbefore, pafter]) (by simp [fill_addrs, pbefore, pafter]) rfl
    (h.root.trans (fill_top_cons _ _ _ _)) ?_
  refine shaped_fill.2 ⟨⟨?_, ?_, ?_⟩, ?_, ⟨?_, ?_, ?_⟩, trivial⟩
  · simp [d_a_e, d_e_a, d_a_b, d_b_a, d_e_b, d_b_e]
  · refine ss.agree ?_
    repeat (first | exact (fun _ _ => rfl) | refine agree_update ?_ (by assumption) _)
  · refine sp.agree_path ?_
    repeat (first | exact (fun _ _ => rfl) | refine agree_update ?_ (by assumption) _)
  · simp [d_a_e, d_e_a, d_a_b, d_b_a, d_e_b, d_b_e]
  · simp [d_a_e, d_e_a, d_a_b, d_b_a, d_e_b, d_b_e]
  · refine sel.agree ?_
    repeat (first | exact (fun _ _ => rfl) | refine agree_update ?_ (by assumption) _)
  · refine ser.agree ?_
    repeat (first | exact (fun _ _ => rfl) | refine agree_update ?_ (by assumption) _)

/-- The branch of `insert_body` for the first insertion: the root end node becomes the left child
of the new root and its right child, the other end node, becomes the right child of the new root. -/
theorem insert_body_first {m : map K V} {e h2 : Nat} {ce ch : color_type}
    {vh : Option (K × V)} {el hl hr : tree K V}
    (h : Rep m (.node e ce none el (.node h2 ch vh hl hr)))
    (x : K × V) (fuel : Nat) :
    ∃ m2, map.insert_body (fuel + 1) m m._root x = some (m2, some m.brk, true) ∧
      Rep m2 (.node m.brk red (some x) (.node e ce none el .nil) (.node h2 ch vh hl hr)) ∧
      m2.brk = m.brk + 1 ∧ m2._sz = m._sz ∧ m2._cmp_k = m._cmp_k := by
  suffices H : ∀ Q : map K V → Prop,
      (∀ m2, Rep m2 (.node m.brk red (some x) (.node e ce none el .nil) (.node h2 ch vh hl hr)) →
        m2.brk = m.brk + 1 ∧ m2._sz = m._sz ∧ m2._cmp_k = m._cmp_k → Q m2) →
      ∃ m2, map.insert_body (fuel + 1) m m._root x = some (m2, some m.brk, true) ∧ Q m2 from
    H _ (fun _ a b => ⟨a, b⟩)
  intro Q hQ
  have hn := h.nodup
  have hf : m.brk ∉ (tree.node e ce none el (.node h2 ch vh hl hr)).addrs :=
    fun hb => Nat.lt_irrefl _ (h.bound _ hb)
  simp only [nodup_fill_iff, nodup_paddrs_L, nodup_paddrs_R, disjoint_paddrs_L,
    disjoint_paddrs_R, mem_paddrs_L, mem_paddrs_R, tree.addrs_node, tree.addrs_nil,
    List.nodup_append, List.nodup_cons, List.mem_append, List.mem_cons,
    List.disjoint_append_left, List.disjoint_append_right, List.disjoint_cons_left,
    List.disjoint_cons_right, not_or, paddrs_nil, List.disjoint_nil_left,
    List.disjoint_nil_right, List.not_mem_nil, List.nil_append, List.nodup_nil,
    not_false_eq_true, true_and, and_true] at hn
  simp only [tree.addrs_node, tree.addrs_nil,
    List.mem_append, List.mem_cons, List.not_mem_nil, not_or, false_or, or_false] at hf
  casesm* _ ∧ _
  have hroot := h.root
  obtain ⟨he, sel, hh, shl, shr⟩ := h.shaped
  have d_e_b : e ≠ m.brk := by first | assumption | exact Ne.symm (by assumption)
  have d_b_e : m.brk ≠ e := d_e_b.symm
  have d_h_e : h2 ≠ e := by first | assumption | exact Ne.symm (by assumption)
  have d_e_h : e ≠ h2 := d_h_e.symm
  have d_h_b : h2 ≠ m.brk := by first | assumption | exact Ne.symm (by assumption)
  have d_b_h : m.brk ≠ h2 := d_h_b.symm
  simp only [tree.top_node] at he hh hroot
  simp [map.insert_body, hroot, get_val_eq he, new_node, set_l, set_r, set_parent, store,
    get_l, get_r, get_parent, he, hh, d_e_b, d_b_e, d_h_e, d_e_h, d_h_b, d_b_h, node_type.mk_val]
  refine hQ _ ?_ ⟨rfl, rfl, rfl⟩
  refine Rep.of_fresh h (el.addrs ++ [e]) (hl.addrs ++ h2 :: hr.addrs)
    (by simp) (by simp) rfl rfl ?_
  refine ⟨?_, ⟨?_, ?_, trivial⟩, ?_, ?_, ?_⟩
  · simp [d_e_b, d_b_e, d_h_e, d_e_h, d_h_b, d_b_h]
  · simp [d_e_b, d_b_e, d_h_e, d_e_h, d_h_b, d_b_h]
  · refine sel.agree ?_
    repeat (first | exact (fun _ _ => rfl) | refine agree_update ?_ (by assumption) _)
  · simp [d_e_b, d_b_e, d_h_e, d_e_h, d_h_b, d_b_h]
  · refine shl.agree ?_
    repeat (first | exact (fun _ _ => rfl) | refine agree_update ?_ (by assumption) _)
  · refine shr.agree ?_
    repeat (first | exact (fun _ _ => rfl) | refine agree_update ?_ (by assumption) _)

end ft

namespace ft
open color_type
variable {K V : Type}

/-! ### Keys of in-order sequences -/

@[simp] theorem ekeys_nil : ekeys ([] : List (Nat × Option (K × V))) = [] := rfl

@[simp] theorem ekeys_append (a b : List (Nat × Option (K × V))) :
    ekeys (a ++ b) = ekeys a ++ ekeys b := by
  simp [ekeys]

@[simp] theorem ekeys_cons_some (a : Nat) (kv : K × V) (es : List (Nat × Option (K × V))) :
    ekeys ((a, some kv) :: es) = kv.1 :: ekeys es := by
  simp [ekeys]

@[simp] theorem ekeys_cons_none (a : Nat) (es : List (Nat × Option (K × V))) :
    ekeys ((a, none) :: es) = ekeys es := by
  simp [ekeys]

theorem tree.data_keys (t : tree K V) : t.data.map Prod.fst = ekeys t.elems := rfl

section order
variable [LinearOrder K]

@[simp] theorem KeysLt_nil (k : K) : KeysLt ([] : List (Nat × Option (K × V))) k := by
  simp [KeysLt]

@[simp] theorem KeysGt_nil (k : K) : KeysGt ([] : List (Nat × Option (K × V))) k := by
  simp [KeysGt]

theorem KeysLt_append {a b : List (Nat × Option (K × V))} {k : K} :
    KeysLt (a ++ b) k ↔ KeysLt a k ∧ KeysLt b k := by
  simp only [KeysLt, ekeys_append, List.mem_append]
  constructor
  · intro h; exact ⟨fun x hx => h x (Or.inl hx), fun x hx => h x (Or.inr hx)⟩
  · rintro ⟨h1, h2⟩ x (hx | hx)
    · exact h1 x hx
    · exact h2 x hx

theorem KeysGt_append {a b : List (Nat × Option (K × V))} {k : K} :
    KeysGt (a ++ b) k ↔ KeysGt a k ∧ KeysGt b k := by
  simp only [KeysGt, ekeys_append, List.mem_append]
  constructor
  · intro h; exact ⟨fun x hx => h x (Or.inl hx), fun x hx => h x (Or.inr hx)⟩
  · rintro ⟨h1, h2⟩ x (hx | hx)
    · exact h1 x hx
    · exact h2 x hx

theorem KeysLt_cons_some {a : Nat} {kv : K × V} {es : List (Nat × Option (K × V))} {k : K} :
    KeysLt ((a, some kv) :: es) k ↔ kv.1 < k ∧ KeysLt es k := by
  simp [KeysLt]

theorem KeysGt_cons_some {a : Nat} {kv : K × V} {es : List (Nat × Option (K × V))} {k : K} :
    KeysGt ((a, some kv) :: es) k ↔ k < kv.1 ∧ KeysGt es k := by
  simp [KeysGt]

theorem KeysLt_cons_none {a : Nat} {es : List (Nat × Option (K × V))} {k : K} :
    KeysLt ((a, none) :: es) k ↔ KeysLt es k := by
  simp [KeysLt]

theorem KeysGt_cons_none {a : Nat} {es : List (Nat × Option (K × V))} {k : K} :
    KeysGt ((a, none) :: es) k ↔ KeysGt es k := by
  simp [KeysGt]

theorem KeysLt.trans_lt {es : List (Nat × Option (K × V))} {k k2 : K} (h : KeysLt es k)
    (hk : k < k2) : KeysLt es k2 := fun x hx => lt_trans (h x hx) hk

theorem KeysGt.trans_gt {es : List (Nat × Option (K × V))} {k k2 : K} (h : KeysGt es k)
    (hk : k2 < k) : KeysGt es k2 := fun x hx => lt_trans hk (h x hx)

/-- In a sorted sequence the keys before a data node are smaller and those after are larger. -/
theorem sorted_split {A B : List (Nat × Option (K × V))} {a : Nat} {kv : K × V}
    (h : (ekeys (A ++ (a, some kv) :: B)).Pairwise (· < ·)) :
    KeysLt A kv.1 ∧ KeysGt B kv.1 := by
  simp only [ekeys_append, ekeys_cons_some, List.pairwise_append, List.pairwise_cons,
    List.mem_cons] at h
  obtain ⟨-, ⟨h2, -⟩, h3⟩ := h
  exact ⟨fun x hx => h3 x hx kv.1 (Or.inl rfl), fun x hx => h2 x hx⟩

/-- Inserting a key between the smaller and the larger keys keeps a sequence sorted. -/
theorem sorted_insert {A B : List (Nat × Option (K × V))} {a : Nat} {kv : K × V}
    (h : (ekeys (A ++ B)).Pairwise (· < ·)) (hA : KeysLt A kv.1) (hB : KeysGt B kv.1) :
    (ekeys (A ++ (a, some kv) :: B)).Pairwise (· < ·) := by
  simp only [ekeys_append, ekeys_cons_some, List.pairwise_append, List.pairwise_cons,
    List.mem_cons] at h ⊢
  obtain ⟨h1, h2, h3⟩ := h
  refine ⟨h1, ⟨fun x hx => hB x hx, h2⟩, ?_⟩
  rintro x hx y (rfl | hy)
  · exact hA x hx
  · exact h3 x hx y hy

end order

end ft

namespace ft
open color_type
variable {K V : Type}

/-- The children of a balanced data node are balanced and so are the paths into them. -/
theorem Bal.children {a : Nat} {c0 c : color_type} {nv : K × V} {l r : tree K V} {n : Nat}
    {p : List (frame K V)} (hb : Bal (.node a c0 (some nv) l r) c n) (hp : PathBal p c n) :
    ∃ cl cr n2, Bal l cl n2 ∧ Bal r cr n2 ∧ PathBal (.L a c0 (some nv) r :: p) cl n2 ∧
      PathBal (.R a c0 (some nv) l :: p) cr n2 := by
  cases hb with
  | red hl hr => exact ⟨_, _, _, hl, hr, PathBal.redL hr hp, PathBal.redR hl hp⟩
  | black hl hr => exact ⟨_, _, _, hl, hr, PathBal.blackL hr hp, PathBal.blackR hl hp⟩

set_option maxHeartbeats 4000000 in
/-- Member `insert_body` on a balanced, sorted subtree: either the key is found and nothing
changes, or a new red node is hung at the place the descent reaches. -/
theorem insert_body_spec [LinearOrder K] (x : K × V) (t : tree K V) :
    ∀ (p : List (frame K V)) (m : map K V) (fuel : Nat) (c : color_type) (n : Nat),
    Rep m (fill p t) → m._cmp_k = less → Bal t c n → PathBal p c n → t ≠ .nil →
    (∀ e, t = .node e black none .nil .nil → p ≠ []) →
    (∀ f : frame K V, f.color = t.color → RootBlack (f :: p)) →
    (∀ f ∈ p, f.val ≠ none) → t.height < fuel →
    (ekeys (fill p t).elems).Pairwise (· < ·) →
    KeysLt (pbefore p) x.1 → KeysGt (pafter p) x.1 →
    (∃ a v, map.insert_body fuel m t.top x = some (m, some a, false) ∧
      (a, some (x.1, v)) ∈ t.elems) ∨
    (∃ m2, map.insert_body fuel m t.top x = some (m2, some m.brk, true) ∧
      Inserted m m2 (fill p t) x) := by
  induction t with
  | nil => intro p m fuel c n _ _ _ _ hne; exact absurd rfl hne
  | node a c0 v l r ihl ihr =>
    intro p m fuel c n h hcmp hb hpb hne hsent hrb hdp hfuel hsort hlt hgt
    obtain ⟨fuel, rfl⟩ : ∃ f, fuel = f + 1 := ⟨fuel - 1, by simp [tree.height] at hfuel; omega⟩
    cases v with
    | none =>
      have hshape : c0 = black ∧ l = .nil ∧ r = .nil ∧ c = black ∧ n = 0 := by
        cases hb; exact ⟨rfl, rfl, rfl, rfl, rfl⟩
      obtain ⟨rfl, rfl, rfl, rfl, rfl⟩ := hshape
      right
      cases p with
      | nil => exact absurd rfl (hsent a rfl)
      | cons f q =>
        cases f with
        | L pa pc pv ps =>
          obtain ⟨m2, e, r2, aux⟩ := insert_body_end_L (p := q) h x fuel
          exact ⟨m2, e, .L pa pc pv ps :: q, (.node a black none .nil .nil), .nil, pbefore q ++ [(a, none)], (pa, pv) :: (ps.elems ++ pafter q),
            r2, aux, Bal.sentinel a, Bal.nil, hpb,
            hrb (.L 0 black none .nil) rfl, hdp, by simp [fill_elems, pbefore, pafter],
            by simp [fill_elems, pbefore, pafter], by
            simp only [KeysLt_append, KeysLt_cons_none]
            exact ⟨by simpa [pbefore] using hlt, KeysLt_nil _⟩, by simpa [pafter] using hgt,
            fun e => by simp at e, fun e => by simp at e⟩
        | R pa pc pv ps =>
          obtain ⟨m2, e, r2, aux⟩ := insert_body_end_R (p := q) h x fuel
          exact ⟨m2, e, .R pa pc pv ps :: q, .nil, (.node a black none .nil .nil), pbefore q ++ ps.elems ++ [(pa, pv)], (a, none) :: pafter q,
            r2, aux, Bal.nil, Bal.sentinel a, hpb,
            hrb (.L 0 black none .nil) rfl, hdp, by simp [fill_elems, pbefore, pafter],
            by simp [fill_elems, pbefore, pafter], by simpa [pbefore] using hlt, by
            simp only [KeysGt_cons_none]
            simpa [pafter] using hgt,
            fun e => by simp at e, fun e => by simp at e⟩
    | some nv =>
      obtain ⟨cl2, cr2, n2, hl, hr, hpl, hpr⟩ := hb.children hpb
      have hsplit : KeysLt (pbefore p ++ l.elems) nv.1 ∧ KeysGt (r.elems ++ pafter p) nv.1 := by
        refine sorted_split (a := a) ?_
        simpa [fill_elems] using hsort
      obtain ⟨⟨-, hsl⟩, hsr, -⟩ :=
        (⟨KeysLt_append.1 hsplit.1, KeysGt_append.1 hsplit.2⟩ :
          (KeysLt (pbefore p) nv.1 ∧ KeysLt l.elems nv.1) ∧
            (KeysGt r.elems nv.1 ∧ KeysGt (pafter p) nv.1))
      rcases lt_trichotomy x.1 nv.1 with hxk | hxk | hxk
      · -- the key goes to the left
        have hc : m._cmp_k x.1 nv.1 = true := by simp [hcmp, less, hxk]
        have hne2 : x.1 ≠ nv.1 := ne_of_lt hxk
        have hcell := h.cell
        by_cases hnil : l = .nil
        · subst hnil
          right
          obtain ⟨m2, e, r2, aux⟩ := insert_body_attach_l (p := p) h x hne2 hc fuel
          have hz : cl2 = black ∧ n2 = 0 := by cases hl <;> exact ⟨rfl, rfl⟩
          obtain ⟨rfl, rfl⟩ := hz
          refine ⟨m2, e, .L a c0 (some nv) r :: p, .nil, .nil, pbefore p, (a, some nv) :: (r.elems ++ pafter p),
            r2, aux, Bal.nil, Bal.nil, hpl,
            hrb (.L a c0 (some nv) r) rfl, ?_, by simp [fill_elems],
            by simp [fill_elems, pbefore, pafter], hlt, by
            simp only [KeysGt_cons_some, KeysGt_append]
            exact ⟨hxk, hsr.trans_gt hxk, hgt⟩,
            fun _ => ⟨a, nv, _, rfl⟩, fun e => by simp at e⟩
          intro f hf
          rcases List.mem_cons.1 hf with rfl | hf
          · simp [frame.val]
          · exact hdp f hf
        · have hstep : map.insert_body (fuel + 1) m (some a) x =
              map.insert_body fuel m l.top x := by
            have : l.top ≠ none := fun e => hnil (tree.top_eq_none.1 e)
            simp [map.insert_body, get_val_eq hcell, hne2, hc, get_l_eq hcell, this]
          have hres := ihl (.L a c0 (some nv) r :: p) m fuel _ _ h hcmp hl hpl hnil
            (fun _ _ => by simp)
            (fun f _ => hrb (.L a c0 (some nv) r) rfl)
            (by
              intro f hf
              rcases List.mem_cons.1 hf with rfl | hf
              · simp [frame.val]
              · exact hdp f hf)
            (by simp [tree.height] at hfuel; omega) hsort
            (by
            simpa [pbefore] using hlt)
            (by
            simp only [pafter, List.cons_append, KeysGt_cons_some, KeysGt_append]
            exact ⟨hxk, hsr.trans_gt hxk, hgt⟩)
          rcases hres with ⟨b, v2, e, hmem⟩ | ⟨m2, e, hins⟩
          · left
            refine ⟨b, v2, hstep.trans e, ?_⟩
            simp only [tree.elems_node]
            exact List.mem_append_left _ hmem
          · right
            exact ⟨m2, hstep.trans e, hins⟩
      · -- the key is found
        left
        refine ⟨a, nv.2, ?_, ?_⟩
        · simp [map.insert_body, get_val_eq h.cell, hxk]
        · simp only [tree.elems_node]
          refine List.mem_append_right _ (List.mem_cons.2 (Or.inl ?_))
          rw [hxk]
      · -- the key goes to the right
        have hc : m._cmp_k x.1 nv.1 = false := by simp [hcmp, less, not_lt_of_gt hxk]
        have hne2 : x.1 ≠ nv.1 := ne_of_gt hxk
        have hcell := h.cell
        by_cases hnil : r = .nil
        · subst hnil
          right
          obtain ⟨m2, e, r2, aux⟩ := insert_body_attach_r (p := p) h x hne2 hc fuel
          have hz : cr2 = black ∧ n2 = 0 := by cases hr <;> exact ⟨rfl, rfl⟩
          obtain ⟨rfl, rfl⟩ := hz
          refine ⟨m2, e, .R a c0 (some nv) l :: p, .nil, .nil, pbefore p ++ l.elems ++ [(a, some nv)], pafter p,
            r2, aux, Bal.nil, Bal.nil, hpr,
            hrb (.R a c0 (some nv) l) rfl, ?_, by simp [fill_elems],
            by simp [fill_elems, pbefore, pafter], by
            simp only [KeysLt_append, KeysLt_cons_some]
            exact ⟨⟨hlt, hsl.trans_lt hxk⟩, hxk, KeysLt_nil _⟩, hgt,
            fun e => by simp at e, fun _ => ⟨a, nv, _, rfl⟩⟩
          intro f hf
          rcases List.mem_cons.1 hf with rfl | hf
          · simp [frame.val]
          · exact hdp f hf
        · have hstep : map.insert_body (fuel + 1) m (some a) x =
              map.insert_body fuel m r.top x := by
            have : r.top ≠ none := fun e => hnil (tree.top_eq_none.1 e)
            simp [map.insert_body, get_val_eq hcell, hne2, hc, get_r_eq hcell, this]
          have hres := ihr (.R a c0 (some nv) l :: p) m fuel _ _ h hcmp hr hpr hnil
            (fun _ _ => by simp)
            (fun f _ => hrb (.R a c0 (some nv) l) rfl)
            (by
              intro f hf
              rcases List.mem_cons.1 hf with rfl | hf
              · simp [frame.val]
              · exact hdp f hf)
            (by simp [tree.height] at hfuel; omega) hsort
            (by
            simp only [pbefore, KeysLt_append, KeysLt_cons_some]
            exact ⟨⟨hlt, hsl.trans_lt hxk⟩, hxk, KeysLt_nil _⟩)
            (by
            simpa [pafter] using hgt)
          rcases hres with ⟨b, v2, e, hmem⟩ | ⟨m2, e, hins⟩
          · left
            refine ⟨b, v2, hstep.trans e, ?_⟩
            simp only [tree.elems_node]
            exact List.mem_append_right _ (List.mem_cons_of_mem _ hmem)
          · right
            exact ⟨m2, hstep.trans e, hins⟩

end ft

set_option linter.unnecessarySeqFocus false

namespace ft
open color_type
variable {K V : Type}

/-! ### Counting nodes -/

/-- The nodes of a represented tree are fewer than the addresses handed out. -/
theorem Rep.card_le {m : map K V} {T : tree K V} (h : Rep m T) : T.addrs.length ≤ m.brk := by
  have h1 : T.addrs.toFinset ⊆ Finset.range m.brk := by
    intro a ha
    exact Finset.mem_range.2 (h.bound a (List.mem_toFinset.1 ha))
  have h2 := Finset.card_le_card h1
  rwa [List.toFinset_card_of_nodup h.nodup, Finset.card_range] at h2

theorem path_length_le (p : List (frame K V)) :
    p.length ≤ (pbefore p).length + (pafter p).length := by
  induction p with
  | nil => simp
  | cons f q ih => cases f <;> simp [pbefore, pafter] <;> omega

theorem fill_length (p : List (frame K V)) (t : tree K V) :
    p.length + t.addrs.length ≤ (fill p t).addrs.length := by
  have := path_length_le p
  simp [fill_addrs]
  omega

theorem data_path_length {p : List (frame K V)} (h : ∀ f ∈ p, f.val ≠ none) :
    p.length ≤ ((pbefore p).filterMap Prod.snd).length +
      ((pafter p).filterMap Prod.snd).length := by
  induction p with
  | nil => simp
  | cons f q ih =>
    have hq := ih (fun g hg => h g (List.mem_cons_of_mem _ hg))
    have hf := h f (List.mem_cons_self _ _)
    cases f with
    | L a c v r =>
      cases v with
      | none => simp [frame.val] at hf
      | some kv => simp [pbefore, pafter]; omega
    | R a c v l =>
      cases v with
      | none => simp [frame.val] at hf
      | some kv => simp [pbefore, pafter]; omega

/-- Changing the element count does not change what a state represents. -/
theorem Rep.with_sz {m : map K V} {T : tree K V} (h : Rep m T) (s : Nat) :
    Rep { m with _sz := s } T :=
  ⟨h.root, h.shaped, h.nodup, h.bound⟩

/-! ### Framed sequences -/

theorem Framed.insert {pre post : List (Nat × Option (K × V))} {a : Nat} {x : K × V}
    (h : Framed (pre ++ post))
    (h1 : pre = [] → ∃ b kv rest, post = (b, some kv) :: rest)
    (h2 : post = [] → ∃ b kv init, pre = init ++ [(b, some kv)]) :
    Framed (pre ++ (a, some x) :: post) := by
  obtain ⟨lo, hi, mid, e, hm⟩ := h
  cases pre with
  | nil =>
    obtain ⟨b, kv, rest, rfl⟩ := h1 rfl
    simp at e
  | cons e0 pre2 =>
    rcases List.eq_nil_or_concat post with rfl | ⟨post2, e1, rfl⟩
    · obtain ⟨b, kv, init, hpre⟩ := h2 rfl
      rw [hpre] at e
      have := congrArg List.getLast? e
      simp [List.getLast?_cons_cons] at this
      rw [← List.cons_append, List.getLast?_append] at this
      simp at this
    · simp only [List.cons_append, List.cons.injEq] at e
      obtain ⟨rfl, e⟩ := e
      have e2 : (pre2 ++ post2) ++ [e1] = mid ++ [(hi, none)] := by
        simpa [List.concat_eq_append] using e
      obtain ⟨e3, e4⟩ := List.append_inj' e2 rfl
      simp only [List.cons.injEq, and_true] at e4
      subst e4
      refine ⟨lo, hi, pre2 ++ (a, some x) :: post2, by simp [List.concat_eq_append], ?_⟩
      intro e he
      rcases List.mem_append.1 he with he | he
      · exact hm e (e3 ▸ List.mem_append_left _ he)
      · rcases List.mem_cons.1 he with rfl | he
        · simp
        · exact hm e (e3 ▸ List.mem_append_right _ he)

end ft

namespace ft
open color_type
variable {K V : Type}

theorem tree.height_le (t : tree K V) : t.height ≤ t.addrs.length := by
  induction t with
  | nil => simp [tree.height]
  | node a c v l r ihl ihr => simp [tree.height]; omega

theorem tree.data_length (t : tree K V) : t.data.length = (ekeys t.elems).length := by
  simp [tree.data, ekeys]

/-- The balancing step of `insert` after a successful `insert_body`. -/
theorem insert_balance [LinearOrder K] {m m2 : map K V} {T : tree K V} {x : K × V}
    (hsz : m._sz = T.data.length)
    {p2 : List (frame K V)} {kl kr : tree K V} {pre post : List (Nat × Option (K × V))}
    (r2 : Rep m2 (fill p2 (.node m.brk red (some x) kl kr))) (hsz2 : m2._sz = m._sz)
    (hkl : Bal kl black 0) (hkr : Bal kr black 0) (hp2 : PathBal p2 black 0)
    (hrb2 : RootBlack p2) (hdp2 : ∀ f ∈ p2, f.val ≠ none)
    (hT : T.elems = pre ++ post)
    (hT2 : (fill p2 (.node m.brk red (some x) kl kr)).elems = pre ++ (m.brk, some x) :: post) :
    ∃ m3 T3,
      (if m2._sz + 1 ≤ 2 then
          set_color { m2 with _sz := m2._sz + 1 } m2._root black
        else map._insert_fix (m2.brk + 1) { m2 with _sz := m2._sz + 1 } (some m.brk)) = some m3 ∧
      Rep m3 T3 ∧ SameAux { m2 with _sz := m2._sz + 1 } m3 ∧
      T3.elems = pre ++ (m.brk, some x) :: post ∧ ∃ n, Bal T3 black n := by
  have r3 := r2.with_sz (m2._sz + 1)
  have hK : Bal (.node m.brk red (some x) kl kr) red 0 := Bal.red hkl hkr
  by_cases hsmall : m2._sz + 1 ≤ 2
  · rw [if_pos hsmall]
    have hcount := congrArg (fun es => (es.filterMap Prod.snd).length) hT2
    have hcountT := congrArg (fun es => (es.filterMap Prod.snd).length) hT
    simp only [fill_elems, tree.elems_node, List.filterMap_append, List.length_append,
      List.filterMap_cons, List.length_cons] at hcount
    simp only [List.filterMap_append, List.length_append] at hcountT
    have hd : T.data.length = ((T.elems).filterMap Prod.snd).length := rfl
    have hlen := data_path_length hdp2
    have hlen1 : p2.length ≤ 1 := by omega
    have hbT : ∃ c0 n0, Bal (fill p2 (.node m.brk red (some x) kl kr)) c0 n0 := by
      cases p2 with
      | nil => exact ⟨_, _, hK⟩
      | cons f q =>
        cases q with
        | nil =>
          exact (hp2.any_color (by intro f2 q2 e; cases e; exact hrb2) red).fill hK
        | cons g q2 => simp at hlen1
    obtain ⟨c0, n0, hb⟩ := hbT
    obtain ⟨m3, T3, e3, r4, a3, el, bl⟩ := Rep.finish r3 hb (fill_ne_nil (by simp))
    exact ⟨m3, T3, e3, r4, a3, el.trans hT2, bl⟩
  · rw [if_neg hsmall]
    have hfuel : p2.length + 2 ≤ m2.brk + 1 := by
      have h1 := fill_length p2 (.node m.brk red (some x) kl kr)
      have h2 := r2.card_le
      simp at h1
      omega
    obtain ⟨m3, T3, e3, r4, a3, el, bl⟩ :=
      insert_fix_spec (m2.brk + 1) _ p2 m.brk x kl kr 0 r3 hkl hkr hp2 hrb2 hfuel
    exact ⟨m3, T3, e3, r4, a3, el.trans hT2, bl⟩

/-- Member `insert` after a successful `insert_body`. -/
theorem insert_of_body [DecidableEq K] {m m2 m3 : map K V} {x : K × V} {it : ptr}
    (e : map.insert_body (m.brk + 1) m m._root x = some (m2, it, true))
    (e3 : (if m2._sz + 1 ≤ 2 then
          set_color { m2 with _sz := m2._sz + 1 } m2._root black
        else map._insert_fix (m2.brk + 1) { m2 with _sz := m2._sz + 1 } it) = some m3) :
    m.insert x = some (m3, it, true) := by
  simp only [map.insert, bind_eq_ub, pure_eq_some, e, ub_bind_some, ↓reduceIte]
  split_ifs at e3 ⊢ <;> simp only [e3, ub_bind_some]

theorem skeleton_not_good [LinearOrder K] {a b : Nat} : ¬ Good (skeleton a b : tree K V) := by
  intro h
  exact h.nonempty (by simp [skeleton, tree.data])

/-- Member `insert` on a state that satisfies the invariant: a present key is found and the
state is returned as it was; an absent key gets a new node at the fresh address, placed between
the smaller and the larger keys, and the invariant holds again with one more element. -/
theorem insert_spec [LinearOrder K] {m : map K V} {T : tree K V} (hI : InvT m T) (x : K × V) :
    (∃ a v, (a, some (x.1, v)) ∈ T.elems ∧ m.insert x = some (m, some a, false)) ∨
    (∃ m2 T2 pre post, m.insert x = some (m2, some m.brk, true) ∧ InvT m2 T2 ∧
      m2._sz = m._sz + 1 ∧ m2.brk = m.brk + 1 ∧ T.elems = pre ++ post ∧
      T2.elems = pre ++ (m.brk, some x) :: post ∧ KeysLt pre x.1 ∧ KeysGt post x.1) := by
  obtain ⟨hR, hcmp, hcase⟩ := hI
  rcases hcase with ⟨hsz, a, b, rfl⟩ | ⟨hG, hsz⟩
  · right
    obtain ⟨m2, e, r2, hbrk, hsz2, hc2⟩ := insert_body_first (h := hR) x m.brk
    have r3 := r2.with_sz (m2._sz + 1)
    obtain ⟨m3, T3, e3, r4, a3, el, bl⟩ :=
      Rep.finish r3 (Bal.red (x := x) (a := m.brk) (Bal.sentinel a) (Bal.sentinel b)) (by simp)
    have hel : T3.elems = [(a, none)] ++ (m.brk, some x) :: [(b, none)] := by
      rw [el]; simp
    refine ⟨m3, T3, [(a, none)], [(b, none)], ?_, ⟨r4, ?_, Or.inr ⟨⟨?_, ?_, ?_, bl⟩, ?_⟩⟩, ?_,
      ?_, by simp [skeleton], hel, by simp [KeysLt], by simp [KeysGt]⟩
    · have hle : m2._sz + 1 ≤ 2 := by omega
      exact insert_of_body e (by rw [if_pos hle]; exact e3)
    · rw [a3.2.2]; exact hc2.trans hcmp
    · exact ⟨a, b, [(m.brk, some x)], by rw [hel]; rfl, by simp⟩
    · simp [tree.data, hel]
    · simp [hel]
    · rw [a3.2.1]; simp [tree.data, hel]; omega
    · rw [a3.2.1]; simp; omega
    · rw [a3.1]; exact hbrk
  · obtain ⟨nT, hbal⟩ := hG.bal
    have hfuel : T.height < m.brk + 1 := by
      have := T.height_le
      have := hR.card_le
      omega
    have hTne : T ≠ .nil := by
      intro e; subst e; exact hG.nonempty rfl
    rcases insert_body_spec x T [] m (m.brk + 1) black nT hR hcmp hbal PathBal.root hTne
        (by intro e he; subst he; exact absurd rfl hG.nonempty)
        (by intro f hf; rw [hbal.color_eq] at hf; exact hf)
        (by simp) hfuel hG.sorted (by simp [pbefore]) (by simp [pafter]) with
      ⟨a, v, e, hmem⟩ | ⟨m2, e, hins⟩
    · left
      refine ⟨a, v, hmem, ?_⟩
      rw [← hR.root] at e
      simp [map.insert, e]
    · right
      obtain ⟨p2, kl, kr, pre, post, r2, ⟨hbrk, hsz2, hc2⟩, hkl, hkr, hp2, hrb2, hdp2, hT, hT2,
        hlt, hgt, hpre, hpost⟩ := hins
      simp only [fill_nil] at hT
      obtain ⟨m3, T3, e3, r4, a3, el, bl⟩ :=
        insert_balance hsz r2 hsz2 hkl hkr hp2 hrb2 hdp2 hT hT2
      refine ⟨m3, T3, pre, post, ?_, ⟨r4, ?_, Or.inr ⟨⟨?_, ?_, ?_, bl⟩, ?_⟩⟩, ?_, ?_, hT, el,
        hlt, hgt⟩
      · rw [← hR.root] at e
        exact insert_of_body e e3
      · rw [a3.2.2]; exact hc2.trans hcmp
      · rw [el]; exact Framed.insert (hT ▸ hG.framed) hpre hpost
      · simp [tree.data, el]
      · rw [el]; exact sorted_insert (hT ▸ hG.sorted) hlt hgt
      · rw [a3.2.1]
        simp [tree.data, el, hsz2, hsz, hT]
        omega
      · rw [a3.2.1]; simp [hsz2]
      · rw [a3.1]; exact hbrk

end ft

set_option linter.unusedVariables false

namespace ft
open color_type
variable {K V : Type}

/-- Member `node_type::sibling` on a node of the represented tree. -/
theorem Rep.sibling_eq {m : map K V} {p : List (frame K V)} {a : Nat} {c : color_type}
    {v : Option (K × V)} {l r : tree K V} (h : Rep m (fill p (.node a c v l r))) :
    ft.sibling m (some a) = some (psib p) := by
  have hc := h.cell
  cases p with
  | nil => simp [ft.sibling, get_parent_eq hc, psib]
  | cons f q =>
    cases f with
    | L g cg vg s =>
      have hg := Rep.cell (p := q) h
      simp [ft.sibling, isOnLeft, get_parent_eq hc, get_l_eq hg, get_r_eq hg, psib]
    | R g cg vg s =>
      have hg := Rep.cell (p := q) h
      have hn := h.nodup
      simp only [nodup_fill_iff, nodup_paddrs_L, nodup_paddrs_R, disjoint_paddrs_L,
        disjoint_paddrs_R, mem_paddrs_L, mem_paddrs_R, tree.addrs_node, tree.addrs_nil,
        List.nodup_append, List.nodup_cons, List.mem_append, List.mem_cons,
        List.disjoint_append_left, List.disjoint_append_right, List.disjoint_cons_left,
        List.disjoint_cons_right, not_or, paddrs_nil, List.disjoint_nil_left,
        List.disjoint_nil_right, List.not_mem_nil, List.nil_append, List.nodup_nil,
        not_false_eq_true, true_and, and_true] at hn
      casesm* _ ∧ _
      have hs : some a ≠ s.top := tree.ne_top_of_not_mem (by assumption)
      simp [ft.sibling, isOnLeft, get_parent_eq hc, get_l_eq hg, get_r_eq hg, psib, hs]

/-- A turn of `fixDoubleBlack` at a left child whose sibling is red: after the recolouring and the rotation the same node is repaired against its new sibling. -/
theorem fdb_red_sibling_L {m : map K V} {q : List (frame K V)} {P s : Nat}
    {cP : color_type} {vP vs : Option (K × V)}
    {X sl sr : tree K V}
    (h : Rep m (fill q (.node P cP vP X (.node s red vs sl sr))))
    (hroot : X.top ≠ m._root) (fuel : Nat) :
    ∃ m2, map.fixDoubleBlack (fuel + 1) m X.top (some P) (some s) = map.fixDoubleBlack fuel m2 X.top (some P) sl.top ∧
      Rep m2 (fill q (.node s black vs (.node P red vP X sl) sr)) ∧ SameAux m m2 := by
  have hn := h.nodup
  simp only [nodup_fill_iff, nodup_paddrs_L, nodup_paddrs_R, disjoint_paddrs_L,
    disjoint_paddrs_R, mem_paddrs_L, mem_paddrs_R, tree.addrs_node, tree.addrs_nil,
    List.nodup_append, List.nodup_cons, List.mem_append, List.mem_cons,
    List.disjoint_append_left, List.disjoint_append_right, List.disjoint_cons_left,
    List.disjoint_cons_right, not_or, paddrs_nil, List.disjoint_nil_left,
    List.disjoint_nil_right, List.not_mem_nil, List.nil_append, List.nodup_nil,
    not_false_eq_true, true_and, and_true] at hn
  casesm* _ ∧ _
  have d_P_s : P ≠ s := by first | assumption | exact Ne.symm (by assumption)
  have d_s_P : s ≠ P := by first | assumption | exact Ne.symm (by assumption)
  have t_X_P : X.top ≠ some P := tree.top_ne_of_not_mem (by assumption)
  have u_X_P : some P ≠ X.top := tree.ne_top_of_not_mem (by assumption)
  have t_X_s : X.top ≠ some s := tree.top_ne_of_not_mem (by assumption)
  have u_X_s : some s ≠ X.top := tree.ne_top_of_not_mem (by assumption)
  have t_sl_P : sl.top ≠ some P := tree.top_ne_of_not_mem (by assumption)
  have u_sl_P : some P ≠ sl.top := tree.ne_top_of_not_mem (by assumption)
  have t_sl_s : sl.top ≠ some s := tree.top_ne_of_not_mem (by assumption)
  have u_sl_s : some s ≠ sl.top := tree.ne_top_of_not_mem (by assumption)
  have t_sr_P : sr.top ≠ some P := tree.top_ne_of_not_mem (by assumption)
  have u_sr_P : some P ≠ sr.top := tree.ne_top_of_not_mem (by assumption)
  have t_sr_s : sr.top ≠ some s := tree.top_ne_of_not_mem (by assumption)
  have u_sr_s : some s ≠ sr.top := tree.ne_top_of_not_mem (by assumption)
  have c0_P := Rep.cell (p := q) h
  have c0_s := Rep.cell (p := (.R P cP vP X) :: q) h
  obtain ⟨m1, e1, r1, a1⟩ := Rep.set_color (p := q) h red
  have c1_P := Rep.cell (p := q) r1
  have c1_s := Rep.cell (p := (.R P red vP X) :: q) r1
  obtain ⟨m2, e2, r2, a2⟩ := Rep.set_color (p := (.R P red vP X) :: q) r1 black
  have c2_P := Rep.cell (p := q) r2
  have c2_s := Rep.cell (p := (.R P red vP X) :: q) r2
  obtain ⟨m3, e3, r3, a3⟩ := l_rotate_spec (p := q) r2
  have c3_P := Rep.cell (p := (.L s black vs sr) :: q) r3
  have c3_s := Rep.cell (p := q) r3
  refine ⟨m3, ?_, r3, a1.trans (a2.trans a3)⟩
  simp [map.fixDoubleBlack, map.fixDoubleBlack_red_child, isOnLeft, hasRedChild, hroot, d_P_s, d_s_P,
    t_X_P, u_X_P, t_X_s, u_X_s, t_sl_P, u_sl_P, t_sl_s, u_sl_s, t_sr_P, u_sr_P, t_sr_s, u_sr_s,
    get_color_eq c0_P, get_val_eq c0_P, get_l_eq c0_P, get_r_eq c0_P, get_parent_eq c0_P,
    get_color_eq c0_s, get_val_eq c0_s, get_l_eq c0_s, get_r_eq c0_s, get_parent_eq c0_s,
    get_color_eq c1_P, get_val_eq c1_P, get_l_eq c1_P, get_r_eq c1_P, get_parent_eq c1_P,
    get_color_eq c1_s, get_val_eq c1_s, get_l_eq c1_s, get_r_eq c1_s, get_parent_eq c1_s,
    get_color_eq c2_P, get_val_eq c2_P, get_l_eq c2_P, get_r_eq c2_P, get_parent_eq c2_P,
    get_color_eq c2_s, get_val_eq c2_s, get_l_eq c2_s, get_r_eq c2_s, get_parent_eq c2_s,
    get_color_eq c3_P, get_val_eq c3_P, get_l_eq c3_P, get_r_eq c3_P, get_parent_eq c3_P,
    get_color_eq c3_s, get_val_eq c3_s, get_l_eq c3_s, get_r_eq c3_s, get_parent_eq c3_s, e1, e2,
    e3]

/-- A turn of `fixDoubleBlack` at a left child whose black sibling has a red left child. -/
theorem fdb_red_left_L {m : map K V} {q : List (frame K V)} {P a s : Nat}
    {cP : color_type} {vP vs : Option (K × V)} {xa : K × V}
    {X A B sr : tree K V}
    (h : Rep m (fill q (.node P cP vP X (.node s black vs (.node a red (some xa) A B) sr))))
    (hroot : X.top ≠ m._root) (fuel : Nat) :
    ∃ m2, map.fixDoubleBlack (fuel + 1) m X.top (some P) (some s) = some m2 ∧
      Rep m2 (fill q (.node a cP (some xa) (.node P black vP X A) (.node s black vs B sr))) ∧ SameAux m m2 := by
  have hn := h.nodup
  simp only [nodup_fill_iff, nodup_paddrs_L, nodup_paddrs_R, disjoint_paddrs_L,
    disjoint_paddrs_R, mem_paddrs_L, mem_paddrs_R, tree.addrs_node, tree.addrs_nil,
    List.nodup_append, List.nodup_cons, List.mem_append, List.mem_cons,
    List.disjoint_append_left, List.disjoint_append_right, List.disjoint_cons_left,
    List.disjoint_cons_right, not_or, paddrs_nil, List.disjoint_nil_left,
    List.disjoint_nil_right, List.not_mem_nil, List.nil_append, List.nodup_nil,
    not_false_eq_true, true_and, and_true] at hn
  casesm* _ ∧ _
  have d_P_a : P ≠ a := by first | assumption | exact Ne.symm (by assumption)
  have d_P_s : P ≠ s := by first | assumption | exact Ne.symm (by assumption)
  have d_a_P : a ≠ P := by first | assumption | exact Ne.symm (by assumption)
  have d_a_s : a ≠ s := by first | assumption | exact Ne.symm (by assumption)
  have d_s_P : s ≠ P := by first | assumption | exact Ne.symm (by assumption)
  have d_s_a : s ≠ a := by first | assumption | exact Ne.symm (by assumption)
  have t_X_P : X.top ≠ some P := tree.top_ne_of_not_mem (by assumption)
  have u_X_P : some P ≠ X.top := tree.ne_top_of_not_mem (by assumption)
  have t_X_a : X.top ≠ some a := tree.top_ne_of_not_mem (by assumption)
  have u_X_a : some a ≠ X.top := tree.ne_top_of_not_mem (by assumption)
  have t_X_s : X.top ≠ some s := tree.top_ne_of_not_mem (by assumption)
  have u_X_s : some s ≠ X.top := tree.ne_top_of_not_mem (by assumption)
  have t_A_P : A.top ≠ some P := tree.top_ne_of_not_mem (by assumption)
  have u_A_P : some P ≠ A.top := tree.ne_top_of_not_mem (by assumption)
  have t_A_a : A.top ≠ some a := tree.top_ne_of_not_mem (by assumption)
  have u_A_a : some a ≠ A.top := tree.ne_top_of_not_mem (by assumption)
  have t_A_s : A.top ≠ some s := tree.top_ne_of_not_mem (by assumption)
  have u_A_s : some s ≠ A.top := tree.ne_top_of_not_mem (by assumption)
  have t_B_P : B.top ≠ some P := tree.top_ne_of_not_mem (by assumption)
  have u_B_P : some P ≠ B.top := tree.ne_top_of_not_mem (by assumption)
  have t_B_a : B.top ≠ some a := tree.top_ne_of_not_mem (by assumption)
  have u_B_a : some a ≠ B.top := tree.ne_top_of_not_mem (by assumption)
  have t_B_s : B.top ≠ some s := tree.top_ne_of_not_mem (by assumption)
  have u_B_s : some s ≠ B.top := tree.ne_top_of_not_mem (by assumption)
  have t_sr_P : sr.top ≠ some P := tree.top_ne_of_not_mem (by assumption)
  have u_sr_P : some P ≠ sr.top := tree.ne_top_of_not_mem (by assumption)
  have t_sr_a : sr.top ≠ some a := tree.top_ne_of_not_mem (by assumption)
  have u_sr_a : some a ≠ sr.top := tree.ne_top_of_not_mem (by assumption)
  have t_sr_s : sr.top ≠ some s := tree.top_ne_of_not_mem (by assumption)
  have u_sr_s : some s ≠ sr.top := tree.ne_top_of_not_mem (by assumption)
  have c0_P := Rep.cell (p := q) h
  have c0_a := Rep.cell (p := (.L s black vs sr) :: (.R P cP vP X) :: q) h
  have c0_s := Rep.cell (p := (.R P cP vP X) :: q) h
  obtain ⟨m1, e1, r1, a1⟩ := Rep.set_color (p := (.L s black vs sr) :: (.R P cP vP X) :: q) h cP
  have c1_P := Rep.cell (p := q) r1
  have c1_a := Rep.cell (p := (.L s black vs sr) :: (.R P cP vP X) :: q) r1
  have c1_s := Rep.cell (p := (.R P cP vP X) :: q) r1
  obtain ⟨m2, e2, r2, a2⟩ := r_rotate_spec (p := (.R P cP vP X) :: q) r1
  have c2_P := Rep.cell (p := q) r2
  have c2_a := Rep.cell (p := (.R P cP vP X) :: q) r2
  have c2_s := Rep.cell (p := (.R a cP (some xa) A) :: (.R P cP vP X) :: q) r2
  obtain ⟨m3, e3, r3, a3⟩ := l_rotate_spec (p := q) r2
  have c3_P := Rep.cell (p := (.L a cP (some xa) (.node s black vs B sr)) :: q) r3
  have c3_a := Rep.cell (p := q) r3
  have c3_s := Rep.cell (p := (.R a cP (some xa) (.node P cP vP X A)) :: q) r3
  obtain ⟨m4, e4, r4, a4⟩ := Rep.set_color (p := (.L a cP (some xa) (.node s black vs B sr)) :: q) r3 black
  have c4_P := Rep.cell (p := (.L a cP (some xa) (.node s black vs B sr)) :: q) r4
  have c4_a := Rep.cell (p := q) r4
  have c4_s := Rep.cell (p := (.R a cP (some xa) (.node P black vP X A)) :: q) r4
  refine ⟨m4, ?_, r4, a1.trans (a2.trans (a3.trans a4))⟩
  simp [map.fixDoubleBlack, map.fixDoubleBlack_red_child, isOnLeft, hasRedChild, hroot, d_P_a, d_P_s,
    d_a_P, d_a_s, d_s_P, d_s_a, t_X_P, u_X_P, t_X_a, u_X_a, t_X_s, u_X_s, t_A_P, u_A_P, t_A_a,
    u_A_a, t_A_s, u_A_s, t_B_P, u_B_P, t_B_a, u_B_a, t_B_s, u_B_s, t_sr_P, u_sr_P, t_sr_a,
    u_sr_a, t_sr_s, u_sr_s, get_color_eq c0_P, get_val_eq c0_P, get_l_eq c0_P, get_r_eq c0_P,
    get_parent_eq c0_P, get_color_eq c0_a, get_val_eq c0_a, get_l_eq c0_a, get_r_eq c0_a,
    get_parent_eq c0_a, get_color_eq c0_s, get_val_eq c0_s, get_l_eq c0_s, get_r_eq c0_s,
    get_parent_eq c0_s, get_color_eq c1_P, get_val_eq c1_P, get_l_eq c1_P, get_r_eq c1_P,
    get_parent_eq c1_P, get_color_eq c1_a, get_val_eq c1_a, get_l_eq c1_a, get_r_eq c1_a,
    get_parent_eq c1_a, get_color_eq c1_s, get_val_eq c1_s, get_l_eq c1_s, get_r_eq c1_s,
    get_parent_eq c1_s, get_color_eq c2_P, get_val_eq c2_P, get_l_eq c2_P, get_r_eq c2_P,
    get_parent_eq c2_P, get_color_eq c2_a, get_val_eq c2_a, get_l_eq c2_a, get_r_eq c2_a,
    get_parent_eq c2_a, get_color_eq c2_s, get_val_eq c2_s, get_l_eq c2_s, get_r_eq c2_s,
    get_parent_eq c2_s, get_color_eq c3_P, get_val_eq c3_P, get_l_eq c3_P, get_r_eq c3_P,
    get_parent_eq c3_P, get_color_eq c3_a, get_val_eq c3_a, get_l_eq c3_a, get_r_eq c3_a,
    get_parent_eq c3_a, get_color_eq c3_s, get_val_eq c3_s, get_l_eq c3_s, get_r_eq c3_s,
    get_parent_eq c3_s, get_color_eq c4_P, get_val_eq c4_P, get_l_eq c4_P, get_r_eq c4_P,
    get_parent_eq c4_P, get_color_eq c4_a, get_val_eq c4_a, get_l_eq c4_a, get_r_eq c4_a,
    get_parent_eq c4_a, get_color_eq c4_s, get_val_eq c4_s, get_l_eq c4_s, get_r_eq c4_s,
    get_parent_eq c4_s, e1, e2, e3, e4]

/-- A turn of `fixDoubleBlack` at a left child whose black sibling has a red right child only. -/
theorem fdb_red_right_L {m : map K V} {q : List (frame K V)} {P s b : Nat}
    {cP : color_type} {vP vs vb : Option (K × V)}
    {X sl C D : tree K V}
    (h : Rep m (fill q (.node P cP vP X (.node s black vs sl (.node b red vb C D)))))
    (hroot : X.top ≠ m._root)
    (hsl : sl.color ≠ red) (fuel : Nat) :
    ∃ m2, map.fixDoubleBlack (fuel + 1) m X.top (some P) (some s) = some m2 ∧
      Rep m2 (fill q (.node s cP vs (.node P black vP X sl) (.node b black vb C D))) ∧ SameAux m m2 := by
  cases sl with
  | nil =>
    have hn := h.nodup
    simp only [nodup_fill_iff, nodup_paddrs_L, nodup_paddrs_R, disjoint_paddrs_L,
      disjoint_paddrs_R, mem_paddrs_L, mem_paddrs_R, tree.addrs_node, tree.addrs_nil,
      List.nodup_append, List.nodup_cons, List.mem_append, List.mem_cons,
      List.disjoint_append_left, List.disjoint_append_right, List.disjoint_cons_left,
      List.disjoint_cons_right, not_or, paddrs_nil, List.disjoint_nil_left,
      List.disjoint_nil_right, List.not_mem_nil, List.nil_append, List.nodup_nil,
      not_false_eq_true, true_and, and_true] at hn
    casesm* _ ∧ _
    have d_P_s : P ≠ s := by first | assumption | exact Ne.symm (by assumption)
    have d_P_b : P ≠ b := by first | assumption | exact Ne.symm (by assumption)
    have d_s_P : s ≠ P := by first | assumption | exact Ne.symm (by assumption)
    have d_s_b : s ≠ b := by first | assumption | exact Ne.symm (by assumption)
    have d_b_P : b ≠ P := by first | assumption | exact Ne.symm (by assumption)
    have d_b_s : b ≠ s := by first | assumption | exact Ne.symm (by assumption)
    have t_X_P : X.top ≠ some P := tree.top_ne_of_not_mem (by assumption)
    have u_X_P : some P ≠ X.top := tree.ne_top_of_not_mem (by assumption)
    have t_X_s : X.top ≠ some s := tree.top_ne_of_not_mem (by assumption)
    have u_X_s : some s ≠ X.top := tree.ne_top_of_not_mem (by assumption)
    have t_X_b : X.top ≠ some b := tree.top_ne_of_not_mem (by assumption)
    have u_X_b : some b ≠ X.top := tree.ne_top_of_not_mem (by assumption)
    have t_C_P : C.top ≠ some P := tree.top_ne_of_not_mem (by assumption)
    have u_C_P : some P ≠ C.top := tree.ne_top_of_not_mem (by assumption)
    have t_C_s : C.top ≠ some s := tree.top_ne_of_not_mem (by assumption)
    have u_C_s : some s ≠ C.top := tree.ne_top_of_not_mem (by assumption)
    have t_C_b : C.top ≠ some b := tree.top_ne_of_not_mem (by assumption)
    have u_C_b : some b ≠ C.top := tree.ne_top_of_not_mem (by assumption)
    have t_D_P : D.top ≠ some P := tree.top_ne_of_not_mem (by assumption)
    have u_D_P : some P ≠ D.top := tree.ne_top_of_not_mem (by assumption)
    have t_D_s : D.top ≠ some s := tree.top_ne_of_not_mem (by assumption)
    have u_D_s : some s ≠ D.top := tree.ne_top_of_not_mem (by assumption)
    have t_D_b : D.top ≠ some b := tree.top_ne_of_not_mem (by assumption)
    have u_D_b : some b ≠ D.top := tree.ne_top_of_not_mem (by assumption)
    have c0_P := Rep.cell (p := q) h
    have c0_s := Rep.cell (p := (.R P cP vP X) :: q) h
    have c0_b := Rep.cell (p := (.R s black vs .nil) :: (.R P cP vP X) :: q) h
    obtain ⟨m1, e1, r1, a1⟩ := Rep.set_color (p := (.R s black vs .nil) :: (.R P cP vP X) :: q) h black
    have c1_P := Rep.cell (p := q) r1
    have c1_s := Rep.cell (p := (.R P cP vP X) :: q) r1
    have c1_b := Rep.cell (p := (.R s black vs .nil) :: (.R P cP vP X) :: q) r1
    obtain ⟨m2, e2, r2, a2⟩ := Rep.set_color (p := (.R P cP vP X) :: q) r1 cP
    have c2_P := Rep.cell (p := q) r2
    have c2_s := Rep.cell (p := (.R P cP vP X) :: q) r2
    have c2_b := Rep.cell (p := (.R s cP vs .nil) :: (.R P cP vP X) :: q) r2
    obtain ⟨m3, e3, r3, a3⟩ := l_rotate_spec (p := q) r2
    have c3_P := Rep.cell (p := (.L s cP vs (.node b black vb C D)) :: q) r3
    have c3_s := Rep.cell (p := q) r3
    have c3_b := Rep.cell (p := (.R s cP vs (.node P cP vP X .nil)) :: q) r3
    obtain ⟨m4, e4, r4, a4⟩ := Rep.set_color (p := (.L s cP vs (.node b black vb C D)) :: q) r3 black
    have c4_P := Rep.cell (p := (.L s cP vs (.node b black vb C D)) :: q) r4
    have c4_s := Rep.cell (p := q) r4
    have c4_b := Rep.cell (p := (.R s cP vs (.node P black vP X .nil)) :: q) r4
    refine ⟨m4, ?_, r4, a1.trans (a2.trans (a3.trans a4))⟩
    simp [map.fixDoubleBlack, map.fixDoubleBlack_red_child, isOnLeft, hasRedChild, hroot, d_P_s, d_P_b,
      d_s_P, d_s_b, d_b_P, d_b_s, t_X_P, u_X_P, t_X_s, u_X_s, t_X_b, u_X_b, t_C_P, u_C_P, t_C_s,
      u_C_s, t_C_b, u_C_b, t_D_P, u_D_P, t_D_s, u_D_s, t_D_b, u_D_b, get_color_eq c0_P,
      get_val_eq c0_P, get_l_eq c0_P, get_r_eq c0_P, get_parent_eq c0_P, get_color_eq c0_s,
      get_val_eq c0_s, get_l_eq c0_s, get_r_eq c0_s, get_parent_eq c0_s, get_color_eq c0_b,
      get_val_eq c0_b, get_l_eq c0_b, get_r_eq c0_b, get_parent_eq c0_b, get_color_eq c1_P,
      get_val_eq c1_P, get_l_eq c1_P, get_r_eq c1_P, get_parent_eq c1_P, get_color_eq c1_s,
      get_val_eq c1_s, get_l_eq c1_s, get_r_eq c1_s, get_parent_eq c1_s, get_color_eq c1_b,
      get_val_eq c1_b, get_l_eq c1_b, get_r_eq c1_b, get_parent_eq c1_b, get_color_eq c2_P,
      get_val_eq c2_P, get_l_eq c2_P, get_r_eq c2_P, get_parent_eq c2_P, get_color_eq c2_s,
      get_val_eq c2_s, get_l_eq c2_s, get_r_eq c2_s, get_parent_eq c2_s, get_color_eq c2_b,
      get_val_eq c2_b, get_l_eq c2_b, get_r_eq c2_b, get_parent_eq c2_b, get_color_eq c3_P,
      get_val_eq c3_P, get_l_eq c3_P, get_r_eq c3_P, get_parent_eq c3_P, get_color_eq c3_s,
      get_val_eq c3_s, get_l_eq c3_s, get_r_eq c3_s, get_parent_eq c3_s, get_color_eq c3_b,
      get_val_eq c3_b, get_l_eq c3_b, get_r_eq c3_b, get_parent_eq c3_b, get_color_eq c4_P,
      get_val_eq c4_P, get_l_eq c4_P, get_r_eq c4_P, get_parent_eq c4_P, get_color_eq c4_s,
      get_val_eq c4_s, get_l_eq c4_s, get_r_eq c4_s, get_parent_eq c4_s, get_color_eq c4_b,
      get_val_eq c4_b, get_l_eq c4_b, get_r_eq c4_b, get_parent_eq c4_b, e1, e2, e3, e4]
  | node sla csl vsl sll slr =>
    simp only [tree.color] at hsl
    have hn := h.nodup
    simp only [nodup_fill_iff, nodup_paddrs_L, nodup_paddrs_R, disjoint_paddrs_L,
      disjoint_paddrs_R, mem_paddrs_L, mem_paddrs_R, tree.addrs_node, tree.addrs_nil,
      List.nodup_append, List.nodup_cons, List.mem_append, List.mem_cons,
      List.disjoint_append_left, List.disjoint_append_right, List.disjoint_cons_left,
      List.disjoint_cons_right, not_or, paddrs_nil, List.disjoint_nil_left,
      List.disjoint_nil_right, List.not_mem_nil, List.nil_append, List.nodup_nil,
      not_false_eq_true, true_and, and_true] at hn
    casesm* _ ∧ _
    have d_P_sla : P ≠ sla := by first | assumption | exact Ne.symm (by assumption)
    have d_P_s : P ≠ s := by first | assumption | exact Ne.symm (by assumption)
    have d_P_b : P ≠ b := by first | assumption | exact Ne.symm (by assumption)
    have d_sla_P : sla ≠ P := by first | assumption | exact Ne.symm (by assumption)
    have d_sla_s : sla ≠ s := by first | assumption | exact Ne.symm (by assumption)
    have d_sla_b : sla ≠ b := by first | assumption | exact Ne.symm (by assumption)
    have d_s_P : s ≠ P := by first | assumption | exact Ne.symm (by assumption)
    have d_s_sla : s ≠ sla := by first | assumption | exact Ne.symm (by assumption)
    have d_s_b : s ≠ b := by first | assumption | exact Ne.symm (by assumption)
    have d_b_P : b ≠ P := by first | assumption | exact Ne.symm (by assumption)
    have d_b_sla : b ≠ sla := by first | assumption | exact Ne.symm (by assumption)
    have d_b_s : b ≠ s := by first | assumption | exact Ne.symm (by assumption)
    have t_X_P : X.top ≠ some P := tree.top_ne_of_not_mem (by assumption)
    have u_X_P : some P ≠ X.top := tree.ne_top_of_not_mem (by assumption)
    have t_X_sla : X.top ≠ some sla := tree.top_ne_of_not_mem (by assumption)
    have u_X_sla : some sla ≠ X.top := tree.ne_top_of_not_mem (by assumption)
    have t_X_s : X.top ≠ some s := tree.top_ne_of_not_mem (by assumption)
    have u_X_s : some s ≠ X.top := tree.ne_top_of_not_mem (by assumption)
    have t_X_b : X.top ≠ some b := tree.top_ne_of_not_mem (by assumption)
    have u_X_b : some b ≠ X.top := tree.ne_top_of_not_mem (by assumption)
    have t_sll_P : sll.top ≠ some P := tree.top_ne_of_not_mem (by assumption)
    have u_sll_P : some P ≠ sll.top := tree.ne_top_of_not_mem (by assumption)
    have t_sll_sla : sll.top ≠ some sla := tree.top_ne_of_not_mem (by assumption)
    have u_sll_sla : some sla ≠ sll.top := tree.ne_top_of_not_mem (by assumption)
    have t_sll_s : sll.top ≠ some s := tree.top_ne_of_not_mem (by assumption)
    have u_sll_s : some s ≠ sll.top := tree.ne_top_of_not_mem (by assumption)
    have t_sll_b : sll.top ≠ some b := tree.top_ne_of_not_mem (by assumption)
    have u_sll_b : some b ≠ sll.top := tree.ne_top_of_not_mem (by assumption)
    have t_slr_P : slr.top ≠ some P := tree.top_ne_of_not_mem (by assumption)
    have u_slr_P : some P ≠ slr.top := tree.ne_top_of_not_mem (by assumption)
    have t_slr_sla : slr.top ≠ some sla := tree.top_ne_of_not_mem (by assumption)
    have u_slr_sla : some sla ≠ slr.top := tree.ne_top_of_not_mem (by assumption)
    have t_slr_s : slr.top ≠ some s := tree.top_ne_of_not_mem (by assumption)
    have u_slr_s : some s ≠ slr.top := tree.ne_top_of_not_mem (by assumption)
    have t_slr_b : slr.top ≠ some b := tree.top_ne_of_not_mem (by assumption)
    have u_slr_b : some b ≠ slr.top := tree.ne_top_of_not_mem (by assumption)
    have t_C_P : C.top ≠ some P := tree.top_ne_of_not_mem (by assumption)
    have u_C_P : some P ≠ C.top := tree.ne_top_of_not_mem (by assumption)
    have t_C_sla : C.top ≠ some sla := tree.top_ne_of_not_mem (by assumption)
    have u_C_sla : some sla ≠ C.top := tree.ne_top_of_not_mem (by assumption)
    have t_C_s : C.top ≠ some s := tree.top_ne_of_not_mem (by assumption)
    have u_C_s : some s ≠ C.top := tree.ne_top_of_not_mem (by assumption)
    have t_C_b : C.top ≠ some b := tree.top_ne_of_not_mem (by assumption)
    have u_C_b : some b ≠ C.top := tree.ne_top_of_not_mem (by assumption)
    have t_D_P : D.top ≠ some P := tree.top_ne_of_not_mem (by assumption)
    have u_D_P : some P ≠ D.top := tree.ne_top_of_not_mem (by assumption)
    have t_D_sla : D.top ≠ some sla := tree.top_ne_of_not_mem (by assumption)
    have u_D_sla : some sla ≠ D.top := tree.ne_top_of_not_mem (by assumption)
    have t_D_s : D.top ≠ some s := tree.top_ne_of_not_mem (by assumption)
    have u_D_s : some s ≠ D.top := tree.ne_top_of_not_mem (by assumption)
    have t_D_b : D.top ≠ some b := tree.top_ne_of_not_mem (by assumption)
    have u_D_b : some b ≠ D.top := tree.ne_top_of_not_mem (by assumption)
    have c0_P := Rep.cell (p := q) h
    have c0_sla := Rep.cell (p := (.L s black vs (.node b red vb C D)) :: (.R P cP vP X) :: q) h
    have c0_s := Rep.cell (p := (.R P cP vP X) :: q) h
    have c0_b := Rep.cell (p := (.R s black vs (.node sla csl vsl sll slr)) :: (.R P cP vP X) :: q) h
    obtain ⟨m1, e1, r1, a1⟩ := Rep.set_color (p := (.R s black vs (.node sla csl vsl sll slr)) :: (.R P cP vP X) :: q) h black
    have c1_P := Rep.cell (p := q) r1
    have c1_sla := Rep.cell (p := (.L s black vs (.node b black vb C D)) :: (.R P cP vP X) :: q) r1
    have c1_s := Rep.cell (p := (.R P cP vP X) :: q) r1
    have c1_b := Rep.cell (p := (.R s black vs (.node sla csl vsl sll slr)) :: (.R P cP vP X) :: q) r1
    obtain ⟨m2, e2, r2, a2⟩ := Rep.set_color (p := (.R P cP vP X) :: q) r1 cP
    have c2_P := Rep.cell (p := q) r2
    have c2_sla := Rep.cell (p := (.L s cP vs (.node b black vb C D)) :: (.R P cP vP X) :: q) r2
    have c2_s := Rep.cell (p := (.R P cP vP X) :: q) r2
    have c2_b := Rep.cell (p := (.R s cP vs (.node sla csl vsl sll slr)) :: (.R P cP vP X) :: q) r2
    obtain ⟨m3, e3, r3, a3⟩ := l_rotate_spec (p := q) r2
    have c3_P := Rep.cell (p := (.L s cP vs (.node b black vb C D)) :: q) r3
    have c3_sla := Rep.cell (p := (.R P cP vP X) :: (.L s cP vs (.node b black vb C D)) :: q) r3
    have c3_s := Rep.cell (p := q) r3
    have c3_b := Rep.cell (p := (.R s cP vs (.node P cP vP X (.node sla csl vsl sll slr))) :: q) r3
    obtain ⟨m4, e4, r4, a4⟩ := Rep.set_color (p := (.L s cP vs (.node b black vb C D)) :: q) r3 black
    have c4_P := Rep.cell (p := (.L s cP vs (.node b black vb C D)) :: q) r4
    have c4_sla := Rep.cell (p := (.R P black vP X) :: (.L s cP vs (.node b black vb C D)) :: q) r4
    have c4_s := Rep.cell (p := q) r4
    have c4_b := Rep.cell (p := (.R s cP vs (.node P black vP X (.node sla csl vsl sll slr))) :: q) r4
    refine ⟨m4, ?_, r4, a1.trans (a2.trans (a3.trans a4))⟩
    simp [map.fixDoubleBlack, map.fixDoubleBlack_red_child, isOnLeft, hasRedChild, hroot, hsl, d_P_sla,
      d_P_s, d_P_b, d_sla_P, d_sla_s, d_sla_b, d_s_P, d_s_sla, d_s_b, d_b_P, d_b_sla, d_b_s, t_X_P,
      u_X_P, t_X_sla, u_X_sla, t_X_s, u_X_s, t_X_b, u_X_b, t_sll_P, u_sll_P, t_sll_sla, u_sll_sla,
      t_sll_s, u_sll_s, t_sll_b, u_sll_b, t_slr_P, u_slr_P, t_slr_sla, u_slr_sla, t_slr_s, u_slr_s,
      t_slr_b, u_slr_b, t_C_P, u_C_P, t_C_sla, u_C_sla, t_C_s, u_C_s, t_C_b, u_C_b, t_D_P, u_D_P,
      t_D_sla, u_D_sla, t_D_s, u_D_s, t_D_b, u_D_b, get_color_eq c0_P, get_val_eq c0_P,
      get_l_eq c0_P, get_r_eq c0_P, get_parent_eq c0_P, get_color_eq c0_sla, get_val_eq c0_sla,
      get_l_eq c0_sla, get_r_eq c0_sla, get_parent_eq c0_sla, get_color_eq c0_s, get_val_eq c0_s,
      get_l_eq c0_s, get_r_eq c0_s, get_parent_eq c0_s, get_color_eq c0_b, get_val_eq c0_b,
      get_l_eq c0_b, get_r_eq c0_b, get_parent_eq c0_b, get_color_eq c1_P, get_val_eq c1_P,
      get_l_eq c1_P, get_r_eq c1_P, get_parent_eq c1_P, get_color_eq c1_sla, get_val_eq c1_sla,
      get_l_eq c1_sla, get_r_eq c1_sla, get_parent_eq c1_sla, get_color_eq c1_s, get_val_eq c1_s,
      get_l_eq c1_s, get_r_eq c1_s, get_parent_eq c1_s, get_color_eq c1_b, get_val_eq c1_b,
      get_l_eq c1_b, get_r_eq c1_b, get_parent_eq c1_b, get_color_eq c2_P, get_val_eq c2_P,
      get_l_eq c2_P, get_r_eq c2_P, get_parent_eq c2_P, get_color_eq c2_sla, get_val_eq c2_sla,
      get_l_eq c2_sla, get_r_eq c2_sla, get_parent_eq c2_sla, get_color_eq c2_s, get_val_eq c2_s,
      get_l_eq c2_s, get_r_eq c2_s, get_parent_eq c2_s, get_color_eq c2_b, get_val_eq c2_b,
      get_l_eq c2_b, get_r_eq c2_b, get_parent_eq c2_b, get_color_eq c3_P, get_val_eq c3_P,
      get_l_eq c3_P, get_r_eq c3_P, get_parent_eq c3_P, get_color_eq c3_sla, get_val_eq c3_sla,
      get_l_eq c3_sla, get_r_eq c3_sla, get_parent_eq c3_sla, get_color_eq c3_s, get_val_eq c3_s,
      get_l_eq c3_s, get_r_eq c3_s, get_parent_eq c3_s, get_color_eq c3_b, get_val_eq c3_b,
      get_l_eq c3_b, get_r_eq c3_b, get_parent_eq c3_b, get_color_eq c4_P, get_val_eq c4_P,
      get_l_eq c4_P, get_r_eq c4_P, get_parent_eq c4_P, get_color_eq c4_sla, get_val_eq c4_sla,
      get_l_eq c4_sla, get_r_eq c4_sla, get_parent_eq c4_sla, get_color_eq c4_s, get_val_eq c4_s,
      get_l_eq c4_s, get_r_eq c4_s, get_parent_eq c4_s, get_color_eq c4_b, get_val_eq c4_b,
      get_l_eq c4_b, get_r_eq c4_b, get_parent_eq c4_b, e1, e2, e3, e4]

/-- A turn of `fixDoubleBlack` at a left child whose black sibling has no red child, below a red parent. -/
theorem fdb_black_red_parent_L {m : map K V} {q : List (frame K V)} {P s : Nat} {vP vs : Option (K × V)}
    {X sl sr : tree K V}
    (h : Rep m (fill q (.node P red vP X (.node s black vs sl sr))))
    (hroot : X.top ≠ m._root)
    (hsl : sl.color ≠ red)
    (hsr : sr.color ≠ red) (fuel : Nat) :
    ∃ m2, map.fixDoubleBlack (fuel + 1) m X.top (some P) (some s) = some m2 ∧
      Rep m2 (fill q (.node P black vP X (.node s red vs sl sr))) ∧ SameAux m m2 := by
  cases sl with
  | nil =>
    cases sr with
    | nil =>
      have hn := h.nodup
      simp only [nodup_fill_iff, nodup_paddrs_L, nodup_paddrs_R, disjoint_paddrs_L,
        disjoint_paddrs_R, mem_paddrs_L, mem_paddrs_R, tree.addrs_node, tree.addrs_nil,
        List.nodup_append, List.nodup_cons, List.mem_append, List.mem_cons,
        List.disjoint_append_left, List.disjoint_append_right, List.disjoint_cons_left,
        List.disjoint_cons_right, not_or, paddrs_nil, List.disjoint_nil_left,
        List.disjoint_nil_right, List.not_mem_nil, List.nil_append, List.nodup_nil,
        not_false_eq_true, true_and, and_true] at hn
      casesm* _ ∧ _
      have d_P_s : P ≠ s := by first | assumption | exact Ne.symm (by assumption)
      have d_s_P : s ≠ P := by first | assumption | exact Ne.symm (by assumption)
      have t_X_P : X.top ≠ some P := tree.top_ne_of_not_mem (by assumption)
      have u_X_P : some P ≠ X.top := tree.ne_top_of_not_mem (by assumption)
      have t_X_s : X.top ≠ some s := tree.top_ne_of_not_mem (by assumption)
      have u_X_s : some s ≠ X.top := tree.ne_top_of_not_mem (by assumption)
      have c0_P := Rep.cell (p := q) h
      have c0_s := Rep.cell (p := (.R P red vP X) :: q) h
      obtain ⟨m1, e1, r1, a1⟩ := Rep.set_color (p := (.R P red vP X) :: q) h red
      have c1_P := Rep.cell (p := q) r1
      have c1_s := Rep.cell (p := (.R P red vP X) :: q) r1
      obtain ⟨m2, e2, r2, a2⟩ := Rep.set_color (p := q) r1 black
      have c2_P := Rep.cell (p := q) r2
      have c2_s := Rep.cell (p := (.R P black vP X) :: q) r2
      refine ⟨m2, ?_, r2, a1.trans a2⟩
      simp [map.fixDoubleBlack, map.fixDoubleBlack_red_child, isOnLeft, hasRedChild, hroot, d_P_s, d_s_P,
        t_X_P, u_X_P, t_X_s, u_X_s, get_color_eq c0_P, get_val_eq c0_P, get_l_eq c0_P, get_r_eq c0_P,
        get_parent_eq c0_P, get_color_eq c0_s, get_val_eq c0_s, get_l_eq c0_s, get_r_eq c0_s,
        get_parent_eq c0_s, get_color_eq c1_P, get_val_eq c1_P, get_l_eq c1_P, get_r_eq c1_P,
        get_parent_eq c1_P, get_color_eq c1_s, get_val_eq c1_s, get_l_eq c1_s, get_r_eq c1_s,
        get_parent_eq c1_s, get_color_eq c2_P, get_val_eq c2_P, get_l_eq c2_P, get_r_eq c2_P,
        get_parent_eq c2_P, get_color_eq c2_s, get_val_eq c2_s, get_l_eq c2_s, get_r_eq c2_s,
        get_parent_eq c2_s, e1, e2]
    | node sra csr vsr srl srr =>
      simp only [tree.color] at hsr
      have hn := h.nodup
      simp only [nodup_fill_iff, nodup_paddrs_L, nodup_paddrs_R, disjoint_paddrs_L,
        disjoint_paddrs_R, mem_paddrs_L, mem_paddrs_R, tree.addrs_node, tree.addrs_nil,
        List.nodup_append, List.nodup_cons, List.mem_append, List.mem_cons,
        List.disjoint_append_left, List.disjoint_append_right, List.disjoint_cons_left,
        List.disjoint_cons_right, not_or, paddrs_nil, List.disjoint_nil_left,
        List.disjoint_nil_right, List.not_mem_nil, List.nil_append, List.nodup_nil,
        not_false_eq_true, true_and, and_true] at hn
      casesm* _ ∧ _
      have d_P_s : P ≠ s := by first | assumption | exact Ne.symm (by assumption)
      have d_P_sra : P ≠ sra := by first | assumption | exact Ne.symm (by assumption)
      have d_s_P : s ≠ P := by first | assumption | exact Ne.symm (by assumption)
      have d_s_sra : s ≠ sra := by first | assumption | exact Ne.symm (by assumption)
      have d_sra_P : sra ≠ P := by first | assumption | exact Ne.symm (by assumption)
      have d_sra_s : sra ≠ s := by first | assumption | exact Ne.symm (by assumption)
      have t_X_P : X.top ≠ some P := tree.top_ne_of_not_mem (by assumption)
      have u_X_P : some P ≠ X.top := tree.ne_top_of_not_mem (by assumption)
      have t_X_s : X.top ≠ some s := tree.top_ne_of_not_mem (by assumption)
      have u_X_s : some s ≠ X.top := tree.ne_top_of_not_mem (by assumption)
      have t_X_sra : X.top ≠ some sra := tree.top_ne_of_not_mem (by assumption)
      have u_X_sra : some sra ≠ X.top := tree.ne_top_of_not_mem (by assumption)
      have t_srl_P : srl.top ≠ some P := tree.top_ne_of_not_mem (by assumption)
      have u_srl_P : some P ≠ srl.top := tree.ne_top_of_not_mem (by assumption)
      have t_srl_s : srl.top ≠ some s := tree.top_ne_of_not_mem (by assumption)
      have u_srl_s : some s ≠ srl.top := tree.ne_top_of_not_mem (by assumption)
      have t_srl_sra : srl.top ≠ some sra := tree.top_ne_of_not_mem (by assumption)
      have u_srl_sra : some sra ≠ srl.top := tree.ne_top_of_not_mem (by assumption)
      have t_srr_P : srr.top ≠ some P := tree.top_ne_of_not_mem (by assumption)
      have u_srr_P : some P ≠ srr.top := tree.ne_top_of_not_mem (by assumption)
      have t_srr_s : srr.top ≠ some s := tree.top_ne_of_not_mem (by assumption)
      have u_srr_s : some s ≠ srr.top := tree.ne_top_of_not_mem (by assumption)
      have t_srr_sra : srr.top ≠ some sra := tree.top_ne_of_not_mem (by assumption)
      have u_srr_sra : some sra ≠ srr.top := tree.ne_top_of_not_mem (by assumption)
      have c0_P := Rep.cell (p := q) h
      have c0_s := Rep.cell (p := (.R P red vP X) :: q) h
      have c0_sra := Rep.cell (p := (.R s black vs .nil) :: (.R P red vP X) :: q) h
      obtain ⟨m1, e1, r1, a1⟩ := Rep.set_color (p := (.R P red vP X) :: q) h red
      have c1_P := Rep.cell (p := q) r1
      have c1_s := Rep.cell (p := (.R P red vP X) :: q) r1
      have c1_sra := Rep.cell (p := (.R s red vs .nil) :: (.R P red vP X) :: q) r1
      obtain ⟨m2, e2, r2, a2⟩ := Rep.set_color (p := q) r1 black
      have c2_P := Rep.cell (p := q) r2
      have c2_s := Rep.cell (p := (.R P black vP X) :: q) r2
      have c2_sra := Rep.cell (p := (.R s red vs .nil) :: (.R P black vP X) :: q) r2
      refine ⟨m2, ?_, r2, a1.trans a2⟩
      simp [map.fixDoubleBlack, map.fixDoubleBlack_red_child, isOnLeft, hasRedChild, hroot, hsr, d_P_s,
        d_P_sra, d_s_P, d_s_sra, d_sra_P, d_sra_s, t_X_P, u_X_P, t_X_s, u_X_s, t_X_sra, u_X_sra,
        t_srl_P, u_srl_P, t_srl_s, u_srl_s, t_srl_sra, u_srl_sra, t_srr_P, u_srr_P, t_srr_s, u_srr_s,
        t_srr_sra, u_srr_sra, get_color_eq c0_P, get_val_eq c0_P, get_l_eq c0_P, get_r_eq c0_P,
        get_parent_eq c0_P, get_color_eq c0_s, get_val_eq c0_s, get_l_eq c0_s, get_r_eq c0_s,
        get_parent_eq c0_s, get_color_eq c0_sra, get_val_eq c0_sra, get_l_eq c0_sra, get_r_eq c0_sra,
        get_parent_eq c0_sra, get_color_eq c1_P, get_val_eq c1_P, get_l_eq c1_P, get_r_eq c1_P,
        get_parent_eq c1_P, get_color_eq c1_s, get_val_eq c1_s, get_l_eq c1_s, get_r_eq c1_s,
        get_parent_eq c1_s, get_color_eq c1_sra, get_val_eq c1_sra, get_l_eq c1_sra, get_r_eq c1_sra,
        get_parent_eq c1_sra, get_color_eq c2_P, get_val_eq c2_P, get_l_eq c2_P, get_r_eq c2_P,
        get_parent_eq c2_P, get_color_eq c2_s, get_val_eq c2_s, get_l_eq c2_s, get_r_eq c2_s,
        get_parent_eq c2_s, get_color_eq c2_sra, get_val_eq c2_sra, get_l_eq c2_sra, get_r_eq c2_sra,
        get_parent_eq c2_sra, e1, e2]
  | node sla csl vsl sll slr =>
    simp only [tree.color] at hsl
    cases sr with
    | nil =>
      have hn := h.nodup
      simp only [nodup_fill_iff, nodup_paddrs_L, nodup_paddrs_R, disjoint_paddrs_L,
        disjoint_paddrs_R, mem_paddrs_L, mem_paddrs_R, tree.addrs_node, tree.addrs_nil,
        List.nodup_append, List.nodup_cons, List.mem_append, List.mem_cons,
        List.disjoint_append_left, List.disjoint_append_right, List.disjoint_cons_left,
        List.disjoint_cons_right, not_or, paddrs_nil, List.disjoint_nil_left,
        List.disjoint_nil_right, List.not_mem_nil, List.nil_append, List.nodup_nil,
        not_false_eq_true, true_and, and_true] at hn
      casesm* _ ∧ _
      have d_P_sla : P ≠ sla := by first | assumption | exact Ne.symm (by assumption)
      have d_P_s : P ≠ s := by first | assumption | exact Ne.symm (by assumption)
      have d_sla_P : sla ≠ P := by first | assumption | exact Ne.symm (by assumption)
      have d_sla_s : sla ≠ s := by first | assumption | exact Ne.symm (by assumption)
      have d_s_P : s ≠ P := by first | assumption | exact Ne.symm (by assumption)
      have d_s_sla : s ≠ sla := by first | assumption | exact Ne.symm (by assumption)
      have t_X_P : X.top ≠ some P := tree.top_ne_of_not_mem (by assumption)
      have u_X_P : some P ≠ X.top := tree.ne_top_of_not_mem (by assumption)
      have t_X_sla : X.top ≠ some sla := tree.top_ne_of_not_mem (by assumption)
      have u_X_sla : some sla ≠ X.top := tree.ne_top_of_not_mem (by assumption)
      have t_X_s : X.top ≠ some s := tree.top_ne_of_not_mem (by assumption)
      have u_X_s : some s ≠ X.top := tree.ne_top_of_not_mem (by assumption)
      have t_sll_P : sll.top ≠ some P := tree.top_ne_of_not_mem (by assumption)
      have u_sll_P : some P ≠ sll.top := tree.ne_top_of_not_mem (by assumption)
      have t_sll_sla : sll.top ≠ some sla := tree.top_ne_of_not_mem (by assumption)
      have u_sll_sla : some sla ≠ sll.top := tree.ne_top_of_not_mem (by assumption)
      have t_sll_s : sll.top ≠ some s := tree.top_ne_of_not_mem (by assumption)
      have u_sll_s : some s ≠ sll.top := tree.ne_top_of_not_mem (by assumption)
      have t_slr_P : slr.top ≠ some P := tree.top_ne_of_not_mem (by assumption)
      have u_slr_P : some P ≠ slr.top := tree.ne_top_of_not_mem (by assumption)
      have t_slr_sla : slr.top ≠ some sla := tree.top_ne_of_not_mem (by assumption)
      have u_slr_sla : some sla ≠ slr.top := tree.ne_top_of_not_mem (by assumption)
      have t_slr_s : slr.top ≠ some s := tree.top_ne_of_not_mem (by assumption)
      have u_slr_s : some s ≠ slr.top := tree.ne_top_of_not_mem (by assumption)
      have c0_P := Rep.cell (p := q) h
      have c0_sla := Rep.cell (p := (.L s black vs .nil) :: (.R P red vP X) :: q) h
      have c0_s := Rep.cell (p := (.R P red vP X) :: q) h
      obtain ⟨m1, e1, r1, a1⟩ := Rep.set_color (p := (.R P red vP X) :: q) h red
      have c1_P := Rep.cell (p := q) r1
      have c1_sla := Rep.cell (p := (.L s red vs .nil) :: (.R P red vP X) :: q) r1
      have c1_s := Rep.cell (p := (.R P red vP X) :: q) r1
      obtain ⟨m2, e2, r2, a2⟩ := Rep.set_color (p := q) r1 black
      have c2_P := Rep.cell (p := q) r2
      have c2_sla := Rep.cell (p := (.L s red vs .nil) :: (.R P black vP X) :: q) r2
      have c2_s := Rep.cell (p := (.R P black vP X) :: q) r2
      refine ⟨m2, ?_, r2, a1.trans a2⟩
      simp [map.fixDoubleBlack, map.fixDoubleBlack_red_child, isOnLeft, hasRedChild, hroot, hsl, d_P_sla,
        d_P_s, d_sla_P, d_sla_s, d_s_P, d_s_sla, t_X_P, u_X_P, t_X_sla, u_X_sla, t_X_s, u_X_s,
        t_sll_P, u_sll_P, t_sll_sla, u_sll_sla, t_sll_s, u_sll_s, t_slr_P, u_slr_P, t_slr_sla,
        u_slr_sla, t_slr_s, u_slr_s, get_color_eq c0_P, get_val_eq c0_P, get_l_eq c0_P,
        get_r_eq c0_P, get_parent_eq c0_P, get_color_eq c0_sla, get_val_eq c0_sla, get_l_eq c0_sla,
        get_r_eq c0_sla, get_parent_eq c0_sla, get_color_eq c0_s, get_val_eq c0_s, get_l_eq c0_s,
        get_r_eq c0_s, get_parent_eq c0_s, get_color_eq c1_P, get_val_eq c1_P, get_l_eq c1_P,
        get_r_eq c1_P, get_parent_eq c1_P, get_color_eq c1_sla, get_val_eq c1_sla, get_l_eq c1_sla,
        get_r_eq c1_sla, get_parent_eq c1_sla, get_color_eq c1_s, get_val_eq c1_s, get_l_eq c1_s,
        get_r_eq c1_s, get_parent_eq c1_s, get_color_eq c2_P, get_val_eq c2_P, get_l_eq c2_P,
        get_r_eq c2_P, get_parent_eq c2_P, get_color_eq c2_sla, get_val_eq c2_sla, get_l_eq c2_sla,
        get_r_eq c2_sla, get_parent_eq c2_sla, get_color_eq c2_s, get_val_eq c2_s, get_l_eq c2_s,
        get_r_eq c2_s, get_parent_eq c2_s, e1, e2]
    | node sra csr vsr srl srr =>
      simp only [tree.color] at hsr
      have hn := h.nodup
      simp only [nodup_fill_iff, nodup_paddrs_L, nodup_paddrs_R, disjoint_paddrs_L,
        disjoint_paddrs_R, mem_paddrs_L, mem_paddrs_R, tree.addrs_node, tree.addrs_nil,
        List.nodup_append, List.nodup_cons, List.mem_append, List.mem_cons,
        List.disjoint_append_left, List.disjoint_append_right, List.disjoint_cons_left,
        List.disjoint_cons_right, not_or, paddrs_nil, List.disjoint_nil_left,
        List.disjoint_nil_right, List.not_mem_nil, List.nil_append, List.nodup_nil,
        not_false_eq_true, true_and, and_true] at hn
      casesm* _ ∧ _
      have d_P_sla : P ≠ sla := by first | assumption | exact Ne.symm (by assumption)
      have d_P_s : P ≠ s := by first | assumption | exact Ne.symm (by assumption)
      have d_P_sra : P ≠ sra := by first | assumption | exact Ne.symm (by assumption)
      have d_sla_P : sla ≠ P := by first | assumption | exact Ne.symm (by assumption)
      have d_sla_s : sla ≠ s := by first | assumption | exact Ne.symm (by assumption)
      have d_sla_sra : sla ≠ sra := by first | assumption | exact Ne.symm (by assumption)
      have d_s_P : s ≠ P := by first | assumption | exact Ne.symm (by assumption)
      have d_s_sla : s ≠ sla := by first | assumption | exact Ne.symm (by assumption)
      have d_s_sra : s ≠ sra := by first | assumption | exact Ne.symm (by assumption)
      have d_sra_P : sra ≠ P := by first | assumption | exact Ne.symm (by assumption)
      have d_sra_sla : sra ≠ sla := by first | assumption | exact Ne.symm (by assumption)
      have d_sra_s : sra ≠ s := by first | assumption | exact Ne.symm (by assumption)
      have t_X_P : X.top ≠ some P := tree.top_ne_of_not_mem (by assumption)
      have u_X_P : some P ≠ X.top := tree.ne_top_of_not_mem (by assumption)
      have t_X_sla : X.top ≠ some sla := tree.top_ne_of_not_mem (by assumption)
      have u_X_sla : some sla ≠ X.top := tree.ne_top_of_not_mem (by assumption)
      have t_X_s : X.top ≠ some s := tree.top_ne_of_not_mem (by assumption)
      have u_X_s : some s ≠ X.top := tree.ne_top_of_not_mem (by assumption)
      have t_X_sra : X.top ≠ some sra := tree.top_ne_of_not_mem (by assumption)
      have u_X_sra : some sra ≠ X.top := tree.ne_top_of_not_mem (by assumption)
      have t_sll_P : sll.top ≠ some P := tree.top_ne_of_not_mem (by assumption)
      have u_sll_P : some P ≠ sll.top := tree.ne_top_of_not_mem (by assumption)
      have t_sll_sla : sll.top ≠ some sla := tree.top_ne_of_not_mem (by assumption)
      have u_sll_sla : some sla ≠ sll.top := tree.ne_top_of_not_mem (by assumption)
      have t_sll_s : sll.top ≠ some s := tree.top_ne_of_not_mem (by assumption)
      have u_sll_s : some s ≠ sll.top := tree.ne_top_of_not_mem (by assumption)
      have t_sll_sra : sll.top ≠ some sra := tree.top_ne_of_not_mem (by assumption)
      have u_sll_sra : some sra ≠ sll.top := tree.ne_top_of_not_mem (by assumption)
      have t_slr_P : slr.top ≠ some P := tree.top_ne_of_not_mem (by assumption)
      have u_slr_P : some P ≠ slr.top := tree.ne_top_of_not_mem (by assumption)
      have t_slr_sla : slr.top ≠ some sla := tree.top_ne_of_not_mem (by assumption)
      have u_slr_sla : some sla ≠ slr.top := tree.ne_top_of_not_mem (by assumption)
      have t_slr_s : slr.top ≠ some s := tree.top_ne_of_not_mem (by assumption)
      have u_slr_s : some s ≠ slr.top := tree.ne_top_of_not_mem (by assumption)
      have t_slr_sra : slr.top ≠ some sra := tree.top_ne_of_not_mem (by assumption)
      have u_slr_sra : some sra ≠ slr.top := tree.ne_top_of_not_mem (by assumption)
      have t_srl_P : srl.top ≠ some P := tree.top_ne_of_not_mem (by assumption)
      have u_srl_P : some P ≠ srl.top := tree.ne_top_of_not_mem (by assumption)
      have t_srl_sla : srl.top ≠ some sla := tree.top_ne_of_not_mem (by assumption)
      have u_srl_sla : some sla ≠ srl.top := tree.ne_top_of_not_mem (by assumption)
      have t_srl_s : srl.top ≠ some s := tree.top_ne_of_not_mem (by assumption)
      have u_srl_s : some s ≠ srl.top := tree.ne_top_of_not_mem (by assumption)
      have t_srl_sra : srl.top ≠ some sra := tree.top_ne_of_not_mem (by assumption)
      have u_srl_sra : some sra ≠ srl.top := tree.ne_top_of_not_mem (by assumption)
      have t_srr_P : srr.top ≠ some P := tree.top_ne_of_not_mem (by assumption)
      have u_srr_P : some P ≠ srr.top := tree.ne_top_of_not_mem (by assumption)
      have t_srr_sla : srr.top ≠ some sla := tree.top_ne_of_not_mem (by assumption)
      have u_srr_sla : some sla ≠ srr.top := tree.ne_top_of_not_mem (by assumption)
      have t_srr_s : srr.top ≠ some s := tree.top_ne_of_not_mem (by assumption)
      have u_srr_s : some s ≠ srr.top := tree.ne_top_of_not_mem (by assumption)
      have t_srr_sra : srr.top ≠ some sra := tree.top_ne_of_not_mem (by assumption)
      have u_srr_sra : some sra ≠ srr.top := tree.ne_top_of_not_mem (by assumption)
      have c0_P := Rep.cell (p := q) h
      have c0_sla := Rep.cell (p := (.L s black vs (.node sra csr vsr srl srr)) :: (.R P red vP X) :: q) h
      have c0_s := Rep.cell (p := (.R P red vP X) :: q) h
      have c0_sra := Rep.cell (p := (.R s black vs (.node sla csl vsl sll slr)) :: (.R P red vP X) :: q) h
      obtain ⟨m1, e1, r1, a1⟩ := Rep.set_color (p := (.R P red vP X) :: q) h red
      have c1_P := Rep.cell (p := q) r1
      have c1_sla := Rep.cell (p := (.L s red vs (.node sra csr vsr srl srr)) :: (.R P red vP X) :: q) r1
      have c1_s := Rep.cell (p := (.R P red vP X) :: q) r1
      have c1_sra := Rep.cell (p := (.R s red vs (.node sla csl vsl sll slr)) :: (.R P red vP X) :: q) r1
      obtain ⟨m2, e2, r2, a2⟩ := Rep.set_color (p := q) r1 black
      have c2_P := Rep.cell (p := q) r2
      have c2_sla := Rep.cell (p := (.L s red vs (.node sra csr vsr srl srr)) :: (.R P black vP X) :: q) r2
      have c2_s := Rep.cell (p := (.R P black vP X) :: q) r2
      have c2_sra := Rep.cell (p := (.R s red vs (.node sla csl vsl sll slr)) :: (.R P black vP X) :: q) r2
      refine ⟨m2, ?_, r2, a1.trans a2⟩
      simp [map.fixDoubleBlack, map.fixDoubleBlack_red_child, isOnLeft, hasRedChild, hroot, hsl, hsr,
        d_P_sla, d_P_s, d_P_sra, d_sla_P, d_sla_s, d_sla_sra, d_s_P, d_s_sla, d_s_sra, d_sra_P,
        d_sra_sla, d_sra_s, t_X_P, u_X_P, t_X_sla, u_X_sla, t_X_s, u_X_s, t_X_sra, u_X_sra, t_sll_P,
        u_sll_P, t_sll_sla, u_sll_sla, t_sll_s, u_sll_s, t_sll_sra, u_sll_sra, t_slr_P, u_slr_P,
        t_slr_sla, u_slr_sla, t_slr_s, u_slr_s, t_slr_sra, u_slr_sra, t_srl_P, u_srl_P, t_srl_sla,
        u_srl_sla, t_srl_s, u_srl_s, t_srl_sra, u_srl_sra, t_srr_P, u_srr_P, t_srr_sla, u_srr_sla,
        t_srr_s, u_srr_s, t_srr_sra, u_srr_sra, get_color_eq c0_P, get_val_eq c0_P, get_l_eq c0_P,
        get_r_eq c0_P, get_parent_eq c0_P, get_color_eq c0_sla, get_val_eq c0_sla, get_l_eq c0_sla,
        get_r_eq c0_sla, get_parent_eq c0_sla, get_color_eq c0_s, get_val_eq c0_s, get_l_eq c0_s,
        get_r_eq c0_s, get_parent_eq c0_s, get_color_eq c0_sra, get_val_eq c0_sra, get_l_eq c0_sra,
        get_r_eq c0_sra, get_parent_eq c0_sra, get_color_eq c1_P, get_val_eq c1_P, get_l_eq c1_P,
        get_r_eq c1_P, get_parent_eq c1_P, get_color_eq c1_sla, get_val_eq c1_sla, get_l_eq c1_sla,
        get_r_eq c1_sla, get_parent_eq c1_sla, get_color_eq c1_s, get_val_eq c1_s, get_l_eq c1_s,
        get_r_eq c1_s, get_parent_eq c1_s, get_color_eq c1_sra, get_val_eq c1_sra, get_l_eq c1_sra,
        get_r_eq c1_sra, get_parent_eq c1_sra, get_color_eq c2_P, get_val_eq c2_P, get_l_eq c2_P,
        get_r_eq c2_P, get_parent_eq c2_P, get_color_eq c2_sla, get_val_eq c2_sla, get_l_eq c2_sla,
        get_r_eq c2_sla, get_parent_eq c2_sla, get_color_eq c2_s, get_val_eq c2_s, get_l_eq c2_s,
        get_r_eq c2_s, get_parent_eq c2_s, get_color_eq c2_sra, get_val_eq c2_sra, get_l_eq c2_sra,
        get_r_eq c2_sra, get_parent_eq c2_sra, e1, e2]

/-- A turn of `fixDoubleBlack` at a left child whose black sibling has no red child, below a black parent: the parent is repaired next. -/
theorem fdb_black_black_parent_L {m : map K V} {q : List (frame K V)} {P s : Nat} {vP vs : Option (K × V)}
    {X sl sr : tree K V}
    (h : Rep m (fill q (.node P black vP X (.node s black vs sl sr))))
    (hroot : X.top ≠ m._root)
    (hsl : sl.color ≠ red)
    (hsr : sr.color ≠ red) (fuel : Nat) :
    ∃ m2, map.fixDoubleBlack (fuel + 1) m X.top (some P) (some s) = map.fixDoubleBlack fuel m2 (some P) (ptop q) (psib q) ∧
      Rep m2 (fill q (.node P black vP X (.node s red vs sl sr))) ∧ SameAux m m2 := by
  cases sl with
  | nil =>
    cases sr with
    | nil =>
      have hn := h.nodup
      simp only [nodup_fill_iff, nodup_paddrs_L, nodup_paddrs_R, disjoint_paddrs_L,
        disjoint_paddrs_R, mem_paddrs_L, mem_paddrs_R, tree.addrs_node, tree.addrs_nil,
        List.nodup_append, List.nodup_cons, List.mem_append, List.mem_cons,
        List.disjoint_append_left, List.disjoint_append_right, List.disjoint_cons_left,
        List.disjoint_cons_right, not_or, paddrs_nil, List.disjoint_nil_left,
        List.disjoint_nil_right, List.not_mem_nil, List.nil_append, List.nodup_nil,
        not_false_eq_true, true_and, and_true] at hn
      casesm* _ ∧ _
      have d_P_s : P ≠ s := by first | assumption | exact Ne.symm (by assumption)
      have d_s_P : s ≠ P := by first | assumption | exact Ne.symm (by assumption)
      have t_X_P : X.top ≠ some P := tree.top_ne_of_not_mem (by assumption)
      have u_X_P : some P ≠ X.top := tree.ne_top_of_not_mem (by assumption)
      have t_X_s : X.top ≠ some s := tree.top_ne_of_not_mem (by assumption)
      have u_X_s : some s ≠ X.top := tree.ne_top_of_not_mem (by assumption)
      have c0_P := Rep.cell (p := q) h
      have c0_s := Rep.cell (p := (.R P black vP X) :: q) h
      obtain ⟨m1, e1, r1, a1⟩ := Rep.set_color (p := (.R P black vP X) :: q) h red
      have c1_P := Rep.cell (p := q) r1
      have c1_s := Rep.cell (p := (.R P black vP X) :: q) r1
      have sib_eq := Rep.sibling_eq (p := q) r1
      refine ⟨m1, ?_, r1, a1⟩
      simp [map.fixDoubleBlack, map.fixDoubleBlack_red_child, isOnLeft, hasRedChild, hroot, d_P_s, d_s_P,
        t_X_P, u_X_P, t_X_s, u_X_s, get_color_eq c0_P, get_val_eq c0_P, get_l_eq c0_P, get_r_eq c0_P,
        get_parent_eq c0_P, get_color_eq c0_s, get_val_eq c0_s, get_l_eq c0_s, get_r_eq c0_s,
        get_parent_eq c0_s, get_color_eq c1_P, get_val_eq c1_P, get_l_eq c1_P, get_r_eq c1_P,
        get_parent_eq c1_P, get_color_eq c1_s, get_val_eq c1_s, get_l_eq c1_s, get_r_eq c1_s,
        get_parent_eq c1_s, e1, sib_eq]
    | node sra csr vsr srl srr =>
      simp only [tree.color] at hsr
      have hn := h.nodup
      simp only [nodup_fill_iff, nodup_paddrs_L, nodup_paddrs_R, disjoint_paddrs_L,
        disjoint_paddrs_R, mem_paddrs_L, mem_paddrs_R, tree.addrs_node, tree.addrs_nil,
        List.nodup_append, List.nodup_cons, List.mem_append, List.mem_cons,
        List.disjoint_append_left, List.disjoint_append_right, List.disjoint_cons_left,
        List.disjoint_cons_right, not_or, paddrs_nil, List.disjoint_nil_left,
        List.disjoint_nil_right, List.not_mem_nil, List.nil_append, List.nodup_nil,
        not_false_eq_true, true_and, and_true] at hn
      casesm* _ ∧ _
      have d_P_s : P ≠ s := by first | assumption | exact Ne.symm (by assumption)
      have d_P_sra : P ≠ sra := by first | assumption | exact Ne.symm (by assumption)
      have d_s_P : s ≠ P := by first | assumption | exact Ne.symm (by assumption)
      have d_s_sra : s ≠ sra := by first | assumption | exact Ne.symm (by assumption)
      have d_sra_P : sra ≠ P := by first | assumption | exact Ne.symm (by assumption)
      have d_sra_s : sra ≠ s := by first | assumption | exact Ne.symm (by assumption)
      have t_X_P : X.top ≠ some P := tree.top_ne_of_not_mem (by assumption)
      have u_X_P : some P ≠ X.top := tree.ne_top_of_not_mem (by assumption)
      have t_X_s : X.top ≠ some s := tree.top_ne_of_not_mem (by assumption)
      have u_X_s : some s ≠ X.top := tree.ne_top_of_not_mem (by assumption)
      have t_X_sra : X.top ≠ some sra := tree.top_ne_of_not_mem (by assumption)
      have u_X_sra : some sra ≠ X.top := tree.ne_top_of_not_mem (by assumption)
      have t_srl_P : srl.top ≠ some P := tree.top_ne_of_not_mem (by assumption)
      have u_srl_P : some P ≠ srl.top := tree.ne_top_of_not_mem (by assumption)
      have t_srl_s : srl.top ≠ some s := tree.top_ne_of_not_mem (by assumption)
      have u_srl_s : some s ≠ srl.top := tree.ne_top_of_not_mem (by assumption)
      have t_srl_sra : srl.top ≠ some sra := tree.top_ne_of_not_mem (by assumption)
      have u_srl_sra : some sra ≠ srl.top := tree.ne_top_of_not_mem (by assumption)
      have t_srr_P : srr.top ≠ some P := tree.top_ne_of_not_mem (by assumption)
      have u_srr_P : some P ≠ srr.top := tree.ne_top_of_not_mem (by assumption)
      have t_srr_s : srr.top ≠ some s := tree.top_ne_of_not_mem (by assumption)
      have u_srr_s : some s ≠ srr.top := tree.ne_top_of_not_mem (by assumption)
      have t_srr_sra : srr.top ≠ some sra := tree.top_ne_of_not_mem (by assumption)
      have u_srr_sra : some sra ≠ srr.top := tree.ne_top_of_not_mem (by assumption)
      have c0_P := Rep.cell (p := q) h
      have c0_s := Rep.cell (p := (.R P black vP X) :: q) h
      have c0_sra := Rep.cell (p := (.R s black vs .nil) :: (.R P black vP X) :: q) h
      obtain ⟨m1, e1, r1, a1⟩ := Rep.set_color (p := (.R P black vP X) :: q) h red
      have c1_P := Rep.cell (p := q) r1
      have c1_s := Rep.cell (p := (.R P black vP X) :: q) r1
      have c1_sra := Rep.cell (p := (.R s red vs .nil) :: (.R P black vP X) :: q) r1
      have sib_eq := Rep.sibling_eq (p := q) r1
      refine ⟨m1, ?_, r1, a1⟩
      simp [map.fixDoubleBlack, map.fixDoubleBlack_red_child, isOnLeft, hasRedChild, hroot, hsr, d_P_s,
        d_P_sra, d_s_P, d_s_sra, d_sra_P, d_sra_s, t_X_P, u_X_P, t_X_s, u_X_s, t_X_sra, u_X_sra,
        t_srl_P, u_srl_P, t_srl_s, u_srl_s, t_srl_sra, u_srl_sra, t_srr_P, u_srr_P, t_srr_s, u_srr_s,
        t_srr_sra, u_srr_sra, get_color_eq c0_P, get_val_eq c0_P, get_l_eq c0_P, get_r_eq c0_P,
        get_parent_eq c0_P, get_color_eq c0_s, get_val_eq c0_s, get_l_eq c0_s, get_r_eq c0_s,
        get_parent_eq c0_s, get_color_eq c0_sra, get_val_eq c0_sra, get_l_eq c0_sra, get_r_eq c0_sra,
        get_parent_eq c0_sra, get_color_eq c1_P, get_val_eq c1_P, get_l_eq c1_P, get_r_eq c1_P,
        get_parent_eq c1_P, get_color_eq c1_s, get_val_eq c1_s, get_l_eq c1_s, get_r_eq c1_s,
        get_parent_eq c1_s, get_color_eq c1_sra, get_val_eq c1_sra, get_l_eq c1_sra, get_r_eq c1_sra,
        get_parent_eq c1_sra, e1, sib_eq]
  | node sla csl vsl sll slr =>
    simp only [tree.color] at hsl
    cases sr with
    | nil =>
      have hn := h.nodup
      simp only [nodup_fill_iff, nodup_paddrs_L, nodup_paddrs_R, disjoint_paddrs_L,
        disjoint_paddrs_R, mem_paddrs_L, mem_paddrs_R, tree.addrs_node, tree.addrs_nil,
        List.nodup_append, List.nodup_cons, List.mem_append, List.mem_cons,
        List.disjoint_append_left, List.disjoint_append_right, List.disjoint_cons_left,
        List.disjoint_cons_right, not_or, paddrs_nil, List.disjoint_nil_left,
        List.disjoint_nil_right, List.not_mem_nil, List.nil_append, List.nodup_nil,
        not_false_eq_true, true_and, and_true] at hn
      casesm* _ ∧ _
      have d_P_sla : P ≠ sla := by first | assumption | exact Ne.symm (by assumption)
      have d_P_s : P ≠ s := by first | assumption | exact Ne.symm (by assumption)
      have d_sla_P : sla ≠ P := by first | assumption | exact Ne.symm (by assumption)
      have d_sla_s : sla ≠ s := by first | assumption | exact Ne.symm (by assumption)
      have d_s_P : s ≠ P := by first | assumption | exact Ne.symm (by assumption)
      have d_s_sla : s ≠ sla := by first | assumption | exact Ne.symm (by assumption)
      have t_X_P : X.top ≠ some P := tree.top_ne_of_not_mem (by assumption)
      have u_X_P : some P ≠ X.top := tree.ne_top_of_not_mem (by assumption)
      have t_X_sla : X.top ≠ some sla := tree.top_ne_of_not_mem (by assumption)
      have u_X_sla : some sla ≠ X.top := tree.ne_top_of_not_mem (by assumption)
      have t_X_s : X.top ≠ some s := tree.top_ne_of_not_mem (by assumption)
      have u_X_s : some s ≠ X.top := tree.ne_top_of_not_mem (by assumption)
      have t_sll_P : sll.top ≠ some P := tree.top_ne_of_not_mem (by assumption)
      have u_sll_P : some P ≠ sll.top := tree.ne_top_of_not_mem (by assumption)
      have t_sll_sla : sll.top ≠ some sla := tree.top_ne_of_not_mem (by assumption)
      have u_sll_sla : some sla ≠ sll.top := tree.ne_top_of_not_mem (by assumption)
      have t_sll_s : sll.top ≠ some s := tree.top_ne_of_not_mem (by assumption)
      have u_sll_s : some s ≠ sll.top := tree.ne_top_of_not_mem (by assumption)
      have t_slr_P : slr.top ≠ some P := tree.top_ne_of_not_mem (by assumption)
      have u_slr_P : some P ≠ slr.top := tree.ne_top_of_not_mem (by assumption)
      have t_slr_sla : slr.top ≠ some sla := tree.top_ne_of_not_mem (by assumption)
      have u_slr_sla : some sla ≠ slr.top := tree.ne_top_of_not_mem (by assumption)
      have t_slr_s : slr.top ≠ some s := tree.top_ne_of_not_mem (by assumption)
      have u_slr_s : some s ≠ slr.top := tree.ne_top_of_not_mem (by assumption)
      have c0_P := Rep.cell (p := q) h
      have c0_sla := Rep.cell (p := (.L s black vs .nil) :: (.R P black vP X) :: q) h
      have c0_s := Rep.cell (p := (.R P black vP X) :: q) h
      obtain ⟨m1, e1, r1, a1⟩ := Rep.set_color (p := (.R P black vP X) :: q) h red
      have c1_P := Rep.cell (p := q) r1
      have c1_sla := Rep.cell (p := (.L s red vs .nil) :: (.R P black vP X) :: q) r1
      have c1_s := Rep.cell (p := (.R P black vP X) :: q) r1
      have sib_eq := Rep.sibling_eq (p := q) r1
      refine ⟨m1, ?_, r1, a1⟩
      simp [map.fixDoubleBlack, map.fixDoubleBlack_red_child, isOnLeft, hasRedChild, hroot, hsl, d_P_sla,
        d_P_s, d_sla_P, d_sla_s, d_s_P, d_s_sla, t_X_P, u_X_P, t_X_sla, u_X_sla, t_X_s, u_X_s,
        t_sll_P, u_sll_P, t_sll_sla, u_sll_sla, t_sll_s, u_sll_s, t_slr_P, u_slr_P, t_slr_sla,
        u_slr_sla, t_slr_s, u_slr_s, get_color_eq c0_P, get_val_eq c0_P, get_l_eq c0_P,
        get_r_eq c0_P, get_parent_eq c0_P, get_color_eq c0_sla, get_val_eq c0_sla, get_l_eq c0_sla,
        get_r_eq c0_sla, get_parent_eq c0_sla, get_color_eq c0_s, get_val_eq c0_s, get_l_eq c0_s,
        get_r_eq c0_s, get_parent_eq c0_s, get_color_eq c1_P, get_val_eq c1_P, get_l_eq c1_P,
        get_r_eq c1_P, get_parent_eq c1_P, get_color_eq c1_sla, get_val_eq c1_sla, get_l_eq c1_sla,
        get_r_eq c1_sla, get_parent_eq c1_sla, get_color_eq c1_s, get_val_eq c1_s, get_l_eq c1_s,
        get_r_eq c1_s, get_parent_eq c1_s, e1, sib_eq]
    | node sra csr vsr srl srr =>
      simp only [tree.color] at hsr
      have hn := h.nodup
      simp only [nodup_fill_iff, nodup_paddrs_L, nodup_paddrs_R, disjoint_paddrs_L,
        disjoint_paddrs_R, mem_paddrs_L, mem_paddrs_R, tree.addrs_node, tree.addrs_nil,
        List.nodup_append, List.nodup_cons, List.mem_append, List.mem_cons,
        List.disjoint_append_left, List.disjoint_append_right, List.disjoint_cons_left,
        List.disjoint_cons_right, not_or, paddrs_nil, List.disjoint_nil_left,
        List.disjoint_nil_right, List.not_mem_nil, List.nil_append, List.nodup_nil,
        not_false_eq_true, true_and, and_true] at hn
      casesm* _ ∧ _
      have d_P_sla : P ≠ sla := by first | assumption | exact Ne.symm (by assumption)
      have d_P_s : P ≠ s := by first | assumption | exact Ne.symm (by assumption)
      have d_P_sra : P ≠ sra := by first | assumption | exact Ne.symm (by assumption)
      have d_sla_P : sla ≠ P := by first | assumption | exact Ne.symm (by assumption)
      have d_sla_s : sla ≠ s := by first | assumption | exact Ne.symm (by assumption)
      have d_sla_sra : sla ≠ sra := by first | assumption | exact Ne.symm (by assumption)
      have d_s_P : s ≠ P := by first | assumption | exact Ne.symm (by assumption)
      have d_s_sla : s ≠ sla := by first | assumption | exact Ne.symm (by assumption)
      have d_s_sra : s ≠ sra := by first | assumption | exact Ne.symm (by assumption)
      have d_sra_P : sra ≠ P := by first | assumption | exact Ne.symm (by assumption)
      have d_sra_sla : sra ≠ sla := by first | assumption | exact Ne.symm (by assumption)
      have d_sra_s : sra ≠ s := by first | assumption | exact Ne.symm (by assumption)
      have t_X_P : X.top ≠ some P := tree.top_ne_of_not_mem (by assumption)
      have u_X_P : some P ≠ X.top := tree.ne_top_of_not_mem (by assumption)
      have t_X_sla : X.top ≠ some sla := tree.top_ne_of_not_mem (by assumption)
      have u_X_sla : some sla ≠ X.top := tree.ne_top_of_not_mem (by assumption)
      have t_X_s : X.top ≠ some s := tree.top_ne_of_not_mem (by assumption)
      have u_X_s : some s ≠ X.top := tree.ne_top_of_not_mem (by assumption)
      have t_X_sra : X.top ≠ some sra := tree.top_ne_of_not_mem (by assumption)
      have u_X_sra : some sra ≠ X.top := tree.ne_top_of_not_mem (by assumption)
      have t_sll_P : sll.top ≠ some P := tree.top_ne_of_not_mem (by assumption)
      have u_sll_P : some P ≠ sll.top := tree.ne_top_of_not_mem (by assumption)
      have t_sll_sla : sll.top ≠ some sla := tree.top_ne_of_not_mem (by assumption)
      have u_sll_sla : some sla ≠ sll.top := tree.ne_top_of_not_mem (by assumption)
      have t_sll_s : sll.top ≠ some s := tree.top_ne_of_not_mem (by assumption)
      have u_sll_s : some s ≠ sll.top := tree.ne_top_of_not_mem (by assumption)
      have t_sll_sra : sll.top ≠ some sra := tree.top_ne_of_not_mem (by assumption)
      have u_sll_sra : some sra ≠ sll.top := tree.ne_top_of_not_mem (by assumption)
      have t_slr_P : slr.top ≠ some P := tree.top_ne_of_not_mem (by assumption)
      have u_slr_P : some P ≠ slr.top := tree.ne_top_of_not_mem (by assumption)
      have t_slr_sla : slr.top ≠ some sla := tree.top_ne_of_not_mem (by assumption)
      have u_slr_sla : some sla ≠ slr.top := tree.ne_top_of_not_mem (by assumption)
      have t_slr_s : slr.top ≠ some s := tree.top_ne_of_not_mem (by assumption)
      have u_slr_s : some s ≠ slr.top := tree.ne_top_of_not_mem (by assumption)
      have t_slr_sra : slr.top ≠ some sra := tree.top_ne_of_not_mem (by assumption)
      have u_slr_sra : some sra ≠ slr.top := tree.ne_top_of_not_mem (by assumption)
      have t_srl_P : srl.top ≠ some P := tree.top_ne_of_not_mem (by assumption)
      have u_srl_P : some P ≠ srl.top := tree.ne_top_of_not_mem (by assumption)
      have t_srl_sla : srl.top ≠ some sla := tree.top_ne_of_not_mem (by assumption)
      have u_srl_sla : some sla ≠ srl.top := tree.ne_top_of_not_mem (by assumption)
      have t_srl_s : srl.top ≠ some s := tree.top_ne_of_not_mem (by assumption)
      have u_srl_s : some s ≠ srl.top := tree.ne_top_of_not_mem (by assumption)
      have t_srl_sra : srl.top ≠ some sra := tree.top_ne_of_not_mem (by assumption)
      have u_srl_sra : some sra ≠ srl.top := tree.ne_top_of_not_mem (by assumption)
      have t_srr_P : srr.top ≠ some P := tree.top_ne_of_not_mem (by assumption)
      have u_srr_P : some P ≠ srr.top := tree.ne_top_of_not_mem (by assumption)
      have t_srr_sla : srr.top ≠ some sla := tree.top_ne_of_not_mem (by assumption)
      have u_srr_sla : some sla ≠ srr.top := tree.ne_top_of_not_mem (by assumption)
      have t_srr_s : srr.top ≠ some s := tree.top_ne_of_not_mem (by assumption)
      have u_srr_s : some s ≠ srr.top := tree.ne_top_of_not_mem (by assumption)
      have t_srr_sra : srr.top ≠ some sra := tree.top_ne_of_not_mem (by assumption)
      have u_srr_sra : some sra ≠ srr.top := tree.ne_top_of_not_mem (by assumption)
      have c0_P := Rep.cell (p := q) h
      have c0_sla := Rep.cell (p := (.L s black vs (.node sra csr vsr srl srr)) :: (.R P black vP X) :: q) h
      have c0_s := Rep.cell (p := (.R P black vP X) :: q) h
      have c0_sra := Rep.cell (p := (.R s black vs (.node sla csl vsl sll slr)) :: (.R P black vP X) :: q) h
      obtain ⟨m1, e1, r1, a1⟩ := Rep.set_color (p := (.R P black vP X) :: q) h red
      have c1_P := Rep.cell (p := q) r1
      have c1_sla := Rep.cell (p := (.L s red vs (.node sra csr vsr srl srr)) :: (.R P black vP X) :: q) r1
      have c1_s := Rep.cell (p := (.R P black vP X) :: q) r1
      have c1_sra := Rep.cell (p := (.R s red vs (.node sla csl vsl sll slr)) :: (.R P black vP X) :: q) r1
      have sib_eq := Rep.sibling_eq (p := q) r1
      refine ⟨m1, ?_, r1, a1⟩
      simp [map.fixDoubleBlack, map.fixDoubleBlack_red_child, isOnLeft, hasRedChild, hroot, hsl, hsr,
        d_P_sla, d_P_s, d_P_sra, d_sla_P, d_sla_s, d_sla_sra, d_s_P, d_s_sla, d_s_sra, d_sra_P,
        d_sra_sla, d_sra_s, t_X_P, u_X_P, t_X_sla, u_X_sla, t_X_s, u_X_s, t_X_sra, u_X_sra, t_sll_P,
        u_sll_P, t_sll_sla, u_sll_sla, t_sll_s, u_sll_s, t_sll_sra, u_sll_sra, t_slr_P, u_slr_P,
        t_slr_sla, u_slr_sla, t_slr_s, u_slr_s, t_slr_sra, u_slr_sra, t_srl_P, u_srl_P, t_srl_sla,
        u_srl_sla, t_srl_s, u_srl_s, t_srl_sra, u_srl_sra, t_srr_P, u_srr_P, t_srr_sla, u_srr_sla,
        t_srr_s, u_srr_s, t_srr_sra, u_srr_sra, get_color_eq c0_P, get_val_eq c0_P, get_l_eq c0_P,
        get_r_eq c0_P, get_parent_eq c0_P, get_color_eq c0_sla, get_val_eq c0_sla, get_l_eq c0_sla,
        get_r_eq c0_sla, get_parent_eq c0_sla, get_color_eq c0_s, get_val_eq c0_s, get_l_eq c0_s,
        get_r_eq c0_s, get_parent_eq c0_s, get_color_eq c0_sra, get_val_eq c0_sra, get_l_eq c0_sra,
        get_r_eq c0_sra, get_parent_eq c0_sra, get_color_eq c1_P, get_val_eq c1_P, get_l_eq c1_P,
        get_r_eq c1_P, get_parent_eq c1_P, get_color_eq c1_sla, get_val_eq c1_sla, get_l_eq c1_sla,
        get_r_eq c1_sla, get_parent_eq c1_sla, get_color_eq c1_s, get_val_eq c1_s, get_l_eq c1_s,
        get_r_eq c1_s, get_parent_eq c1_s, get_color_eq c1_sra, get_val_eq c1_sra, get_l_eq c1_sra,
        get_r_eq c1_sra, get_parent_eq c1_sra, e1, sib_eq]

/-- A turn of `fixDoubleBlack` at a right child whose sibling is red: after the recolouring and the rotation the same node is repaired against its new sibling. -/
theorem fdb_red_sibling_R {m : map K V} {q : List (frame K V)} {s P : Nat}
    {cP : color_type} {vs vP : Option (K × V)}
    {sl sr X : tree K V}
    (h : Rep m (fill q (.node P cP vP (.node s red vs sl sr) X)))
    (hroot : X.top ≠ m._root) (fuel : Nat) :
    ∃ m2, map.fixDoubleBlack (fuel + 1) m X.top (some P) (some s) = map.fixDoubleBlack fuel m2 X.top (some P) sr.top ∧
      Rep m2 (fill q (.node s black vs sl (.node P red vP sr X))) ∧ SameAux m m2 := by
  have hn := h.nodup
  simp only [nodup_fill_iff, nodup_paddrs_L, nodup_paddrs_R, disjoint_paddrs_L,
    disjoint_paddrs_R, mem_paddrs_L, mem_paddrs_R, tree.addrs_node, tree.addrs_nil,
    List.nodup_append, List.nodup_cons, List.mem_append, List.mem_cons,
    List.disjoint_append_left, List.disjoint_append_right, List.disjoint_cons_left,
    List.disjoint_cons_right, not_or, paddrs_nil, List.disjoint_nil_left,
    List.disjoint_nil_right, List.not_mem_nil, List.nil_append, List.nodup_nil,
    not_false_eq_true, true_and, and_true] at hn
  casesm* _ ∧ _
  have d_s_P : s ≠ P := by first | assumption | exact Ne.symm (by assumption)
  have d_P_s : P ≠ s := by first | assumption | exact Ne.symm (by assumption)
  have t_sl_s : sl.top ≠ some s := tree.top_ne_of_not_mem (by assumption)
  have u_sl_s : some s ≠ sl.top := tree.ne_top_of_not_mem (by assumption)
  have t_sl_P : sl.top ≠ some P := tree.top_ne_of_not_mem (by assumption)
  have u_sl_P : some P ≠ sl.top := tree.ne_top_of_not_mem (by assumption)
  have t_sr_s : sr.top ≠ some s := tree.top_ne_of_not_mem (by assumption)
  have u_sr_s : some s ≠ sr.top := tree.ne_top_of_not_mem (by assumption)
  have t_sr_P : sr.top ≠ some P := tree.top_ne_of_not_mem (by assumption)
  have u_sr_P : some P ≠ sr.top := tree.ne_top_of_not_mem (by assumption)
  have t_X_s : X.top ≠ some s := tree.top_ne_of_not_mem (by assumption)
  have u_X_s : some s ≠ X.top := tree.ne_top_of_not_mem (by assumption)
  have t_X_P : X.top ≠ some P := tree.top_ne_of_not_mem (by assumption)
  have u_X_P : some P ≠ X.top := tree.ne_top_of_not_mem (by assumption)
  have c0_s := Rep.cell (p := (.L P cP vP X) :: q) h
  have c0_P := Rep.cell (p := q) h
  obtain ⟨m1, e1, r1, a1⟩ := Rep.set_color (p := q) h red
  have c1_s := Rep.cell (p := (.L P red vP X) :: q) r1
  have c1_P := Rep.cell (p := q) r1
  obtain ⟨m2, e2, r2, a2⟩ := Rep.set_color (p := (.L P red vP X) :: q) r1 black
  have c2_s := Rep.cell (p := (.L P red vP X) :: q) r2
  have c2_P := Rep.cell (p := q) r2
  obtain ⟨m3, e3, r3, a3⟩ := r_rotate_spec (p := q) r2
  have c3_s := Rep.cell (p := q) r3
  have c3_P := Rep.cell (p := (.R s black vs sl) :: q) r3
  refine ⟨m3, ?_, r3, a1.trans (a2.trans a3)⟩
  simp [map.fixDoubleBlack, map.fixDoubleBlack_red_child, isOnLeft, hasRedChild, hroot, d_s_P, d_P_s,
    t_sl_s, u_sl_s, t_sl_P, u_sl_P, t_sr_s, u_sr_s, t_sr_P, u_sr_P, t_X_s, u_X_s, t_X_P, u_X_P,
    get_color_eq c0_s, get_val_eq c0_s, get_l_eq c0_s, get_r_eq c0_s, get_parent_eq c0_s,
    get_color_eq c0_P, get_val_eq c0_P, get_l_eq c0_P, get_r_eq c0_P, get_parent_eq c0_P,
    get_color_eq c1_s, get_val_eq c1_s, get_l_eq c1_s, get_r_eq c1_s, get_parent_eq c1_s,
    get_color_eq c1_P, get_val_eq c1_P, get_l_eq c1_P, get_r_eq c1_P, get_parent_eq c1_P,
    get_color_eq c2_s, get_val_eq c2_s, get_l_eq c2_s, get_r_eq c2_s, get_parent_eq c2_s,
    get_color_eq c2_P, get_val_eq c2_P, get_l_eq c2_P, get_r_eq c2_P, get_parent_eq c2_P,
    get_color_eq c3_s, get_val_eq c3_s, get_l_eq c3_s, get_r_eq c3_s, get_parent_eq c3_s,
    get_color_eq c3_P, get_val_eq c3_P, get_l_eq c3_P, get_r_eq c3_P, get_parent_eq c3_P, e1, e2,
    e3]

/-- A turn of `fixDoubleBlack` at a right child whose black sibling has a red left child. -/
theorem fdb_red_left_R {m : map K V} {q : List (frame K V)} {a s P : Nat}
    {cP : color_type} {vs vP : Option (K × V)} {xa : K × V}
    {A B sr X : tree K V}
    (h : Rep m (fill q (.node P cP vP (.node s black vs (.node a red (some xa) A B) sr) X)))
    (hroot : X.top ≠ m._root) (fuel : Nat) :
    ∃ m2, map.fixDoubleBlack (fuel + 1) m X.top (some P) (some s) = some m2 ∧
      Rep m2 (fill q (.node s cP vs (.node a black (some xa) A B) (.node P black vP sr X))) ∧ SameAux m m2 := by
  have hn := h.nodup
  simp only [nodup_fill_iff, nodup_paddrs_L, nodup_paddrs_R, disjoint_paddrs_L,
    disjoint_paddrs_R, mem_paddrs_L, mem_paddrs_R, tree.addrs_node, tree.addrs_nil,
    List.nodup_append, List.nodup_cons, List.mem_append, List.mem_cons,
    List.disjoint_append_left, List.disjoint_append_right, List.disjoint_cons_left,
    List.disjoint_cons_right, not_or, paddrs_nil, List.disjoint_nil_left,
    List.disjoint_nil_right, List.not_mem_nil, List.nil_append, List.nodup_nil,
    not_false_eq_true, true_and, and_true] at hn
  casesm* _ ∧ _
  have d_a_s : a ≠ s := by first | assumption | exact Ne.symm (by assumption)
  have d_a_P : a ≠ P := by first | assumption | exact Ne.symm (by assumption)
  have d_s_a : s ≠ a := by first | assumption | exact Ne.symm (by assumption)
  have d_s_P : s ≠ P := by first | assumption | exact Ne.symm (by assumption)
  have d_P_a : P ≠ a := by first | assumption | exact Ne.symm (by assumption)
  have d_P_s : P ≠ s := by first | assumption | exact Ne.symm (by assumption)
  have t_A_a : A.top ≠ some a := tree.top_ne_of_not_mem (by assumption)
  have u_A_a : some a ≠ A.top := tree.ne_top_of_not_mem (by assumption)
  have t_A_s : A.top ≠ some s := tree.top_ne_of_not_mem (by assumption)
  have u_A_s : some s ≠ A.top := tree.ne_top_of_not_mem (by assumption)
  have t_A_P : A.top ≠ some P := tree.top_ne_of_not_mem (by assumption)
  have u_A_P : some P ≠ A.top := tree.ne_top_of_not_mem (by assumption)
  have t_B_a : B.top ≠ some a := tree.top_ne_of_not_mem (by assumption)
  have u_B_a : some a ≠ B.top := tree.ne_top_of_not_mem (by assumption)
  have t_B_s : B.top ≠ some s := tree.top_ne_of_not_mem (by assumption)
  have u_B_s : some s ≠ B.top := tree.ne_top_of_not_mem (by assumption)
  have t_B_P : B.top ≠ some P := tree.top_ne_of_not_mem (by assumption)
  have u_B_P : some P ≠ B.top := tree.ne_top_of_not_mem (by assumption)
  have t_sr_a : sr.top ≠ some a := tree.top_ne_of_not_mem (by assumption)
  have u_sr_a : some a ≠ sr.top := tree.ne_top_of_not_mem (by assumption)
  have t_sr_s : sr.top ≠ some s := tree.top_ne_of_not_mem (by assumption)
  have u_sr_s : some s ≠ sr.top := tree.ne_top_of_not_mem (by assumption)
  have t_sr_P : sr.top ≠ some P := tree.top_ne_of_not_mem (by assumption)
  have u_sr_P : some P ≠ sr.top := tree.ne_top_of_not_mem (by assumption)
  have t_X_a : X.top ≠ some a := tree.top_ne_of_not_mem (by assumption)
  have u_X_a : some a ≠ X.top := tree.ne_top_of_not_mem (by assumption)
  have t_X_s : X.top ≠ some s := tree.top_ne_of_not_mem (by assumption)
  have u_X_s : some s ≠ X.top := tree.ne_top_of_not_mem (by assumption)
  have t_X_P : X.top ≠ some P := tree.top_ne_of_not_mem (by assumption)
  have u_X_P : some P ≠ X.top := tree.ne_top_of_not_mem (by assumption)
  have c0_a := Rep.cell (p := (.L s black vs sr) :: (.L P cP vP X) :: q) h
  have c0_s := Rep.cell (p := (.L P cP vP X) :: q) h
  have c0_P := Rep.cell (p := q) h
  obtain ⟨m1, e1, r1, a1⟩ := Rep.set_color (p := (.L s black vs sr) :: (.L P cP vP X) :: q) h black
  have c1_a := Rep.cell (p := (.L s black vs sr) :: (.L P cP vP X) :: q) r1
  have c1_s := Rep.cell (p := (.L P cP vP X) :: q) r1
  have c1_P := Rep.cell (p := q) r1
  obtain ⟨m2, e2, r2, a2⟩ := Rep.set_color (p := (.L P cP vP X) :: q) r1 cP
  have c2_a := Rep.cell (p := (.L s cP vs sr) :: (.L P cP vP X) :: q) r2
  have c2_s := Rep.cell (p := (.L P cP vP X) :: q) r2
  have c2_P := Rep.cell (p := q) r2
  obtain ⟨m3, e3, r3, a3⟩ := r_rotate_spec (p := q) r2
  have c3_a := Rep.cell (p := (.L s cP vs (.node P cP vP sr X)) :: q) r3
  have c3_s := Rep.cell (p := q) r3
  have c3_P := Rep.cell (p := (.R s cP vs (.node a black (some xa) A B)) :: q) r3
  obtain ⟨m4, e4, r4, a4⟩ := Rep.set_color (p := (.R s cP vs (.node a black (some xa) A B)) :: q) r3 black
  have c4_a := Rep.cell (p := (.L s cP vs (.node P black vP sr X)) :: q) r4
  have c4_s := Rep.cell (p := q) r4
  have c4_P := Rep.cell (p := (.R s cP vs (.node a black (some xa) A B)) :: q) r4
  refine ⟨m4, ?_, r4, a1.trans (a2.trans (a3.trans a4))⟩
  simp [map.fixDoubleBlack, map.fixDoubleBlack_red_child, isOnLeft, hasRedChild, hroot, d_a_s, d_a_P,
    d_s_a, d_s_P, d_P_a, d_P_s, t_A_a, u_A_a, t_A_s, u_A_s, t_A_P, u_A_P, t_B_a, u_B_a, t_B_s,
    u_B_s, t_B_P, u_B_P, t_sr_a, u_sr_a, t_sr_s, u_sr_s, t_sr_P, u_sr_P, t_X_a, u_X_a, t_X_s,
    u_X_s, t_X_P, u_X_P, get_color_eq c0_a, get_val_eq c0_a, get_l_eq c0_a, get_r_eq c0_a,
    get_parent_eq c0_a, get_color_eq c0_s, get_val_eq c0_s, get_l_eq c0_s, get_r_eq c0_s,
    get_parent_eq c0_s, get_color_eq c0_P, get_val_eq c0_P, get_l_eq c0_P, get_r_eq c0_P,
    get_parent_eq c0_P, get_color_eq c1_a, get_val_eq c1_a, get_l_eq c1_a, get_r_eq c1_a,
    get_parent_eq c1_a, get_color_eq c1_s, get_val_eq c1_s, get_l_eq c1_s, get_r_eq c1_s,
    get_parent_eq c1_s, get_color_eq c1_P, get_val_eq c1_P, get_l_eq c1_P, get_r_eq c1_P,
    get_parent_eq c1_P, get_color_eq c2_a, get_val_eq c2_a, get_l_eq c2_a, get_r_eq c2_a,
    get_parent_eq c2_a, get_color_eq c2_s, get_val_eq c2_s, get_l_eq c2_s, get_r_eq c2_s,
    get_parent_eq c2_s, get_color_eq c2_P, get_val_eq c2_P, get_l_eq c2_P, get_r_eq c2_P,
    get_parent_eq c2_P, get_color_eq c3_a, get_val_eq c3_a, get_l_eq c3_a, get_r_eq c3_a,
    get_parent_eq c3_a, get_color_eq c3_s, get_val_eq c3_s, get_l_eq c3_s, get_r_eq c3_s,
    get_parent_eq c3_s, get_color_eq c3_P, get_val_eq c3_P, get_l_eq c3_P, get_r_eq c3_P,
    get_parent_eq c3_P, get_color_eq c4_a, get_val_eq c4_a, get_l_eq c4_a, get_r_eq c4_a,
    get_parent_eq c4_a, get_color_eq c4_s, get_val_eq c4_s, get_l_eq c4_s, get_r_eq c4_s,
    get_parent_eq c4_s, get_color_eq c4_P, get_val_eq c4_P, get_l_eq c4_P, get_r_eq c4_P,
    get_parent_eq c4_P, e1, e2, e3, e4]

/-- A turn of `fixDoubleBlack` at a right child whose black sibling has a red right child only. -/
theorem fdb_red_right_R {m : map K V} {q : List (frame K V)} {s b P : Nat}
    {cP : color_type} {vs vb vP : Option (K × V)}
    {sl C D X : tree K V}
    (h : Rep m (fill q (.node P cP vP (.node s black vs sl (.node b red vb C D)) X)))
    (hroot : X.top ≠ m._root)
    (hsl : sl.color ≠ red) (fuel : Nat) :
    ∃ m2, map.fixDoubleBlack (fuel + 1) m X.top (some P) (some s) = some m2 ∧
      Rep m2 (fill q (.node b cP vb (.node s black vs sl C) (.node P black vP D X))) ∧ SameAux m m2 := by
  cases sl with
  | nil =>
    have hn := h.nodup
    simp only [nodup_fill_iff, nodup_paddrs_L, nodup_paddrs_R, disjoint_paddrs_L,
      disjoint_paddrs_R, mem_paddrs_L, mem_paddrs_R, tree.addrs_node, tree.addrs_nil,
      List.nodup_append, List.nodup_cons, List.mem_append, List.mem_cons,
      List.disjoint_append_left, List.disjoint_append_right, List.disjoint_cons_left,
      List.disjoint_cons_right, not_or, paddrs_nil, List.disjoint_nil_left,
      List.disjoint_nil_right, List.not_mem_nil, List.nil_append, List.nodup_nil,
      not_false_eq_true, true_and, and_true] at hn
    casesm* _ ∧ _
    have d_s_b : s ≠ b := by first | assumption | exact Ne.symm (by assumption)
    have d_s_P : s ≠ P := by first | assumption | exact Ne.symm (by assumption)
    have d_b_s : b ≠ s := by first | assumption | exact Ne.symm (by assumption)
    have d_b_P : b ≠ P := by first | assumption | exact Ne.symm (by assumption)
    have d_P_s : P ≠ s := by first | assumption | exact Ne.symm (by assumption)
    have d_P_b : P ≠ b := by first | assumption | exact Ne.symm (by assumption)
    have t_C_s : C.top ≠ some s := tree.top_ne_of_not_mem (by assumption)
    have u_C_s : some s ≠ C.top := tree.ne_top_of_not_mem (by assumption)
    have t_C_b : C.top ≠ some b := tree.top_ne_of_not_mem (by assumption)
    have u_C_b : some b ≠ C.top := tree.ne_top_of_not_mem (by assumption)
    have t_C_P : C.top ≠ some P := tree.top_ne_of_not_mem (by assumption)
    have u_C_P : some P ≠ C.top := tree.ne_top_of_not_mem (by assumption)
    have t_D_s : D.top ≠ some s := tree.top_ne_of_not_mem (by assumption)
    have u_D_s : some s ≠ D.top := tree.ne_top_of_not_mem (by assumption)
    have t_D_b : D.top ≠ some b := tree.top_ne_of_not_mem (by assumption)
    have u_D_b : some b ≠ D.top := tree.ne_top_of_not_mem (by assumption)
    have t_D_P : D.top ≠ some P := tree.top_ne_of_not_mem (by assumption)
    have u_D_P : some P ≠ D.top := tree.ne_top_of_not_mem (by assumption)
    have t_X_s : X.top ≠ some s := tree.top_ne_of_not_mem (by assumption)
    have u_X_s : some s ≠ X.top := tree.ne_top_of_not_mem (by assumption)
    have t_X_b : X.top ≠ some b := tree.top_ne_of_not_mem (by assumption)
    have u_X_b : some b ≠ X.top := tree.ne_top_of_not_mem (by assumption)
    have t_X_P : X.top ≠ some P := tree.top_ne_of_not_mem (by assumption)
    have u_X_P : some P ≠ X.top := tree.ne_top_of_not_mem (by assumption)
    have c0_s := Rep.cell (p := (.L P cP vP X) :: q) h
    have c0_b := Rep.cell (p := (.R s black vs .nil) :: (.L P cP vP X) :: q) h
    have c0_P := Rep.cell (p := q) h
    obtain ⟨m1, e1, r1, a1⟩ := Rep.set_color (p := (.R s black vs .nil) :: (.L P cP vP X) :: q) h cP
    have c1_s := Rep.cell (p := (.L P cP vP X) :: q) r1
    have c1_b := Rep.cell (p := (.R s black vs .nil) :: (.L P cP vP X) :: q) r1
    have c1_P := Rep.cell (p := q) r1
    obtain ⟨m2, e2, r2, a2⟩ := l_rotate_spec (p := (.L P cP vP X) :: q) r1
    have c2_s := Rep.cell (p := (.L b cP vb D) :: (.L P cP vP X) :: q) r2
    have c2_b := Rep.cell (p := (.L P cP vP X) :: q) r2
    have c2_P := Rep.cell (p := q) r2
    obtain ⟨m3, e3, r3, a3⟩ := r_rotate_spec (p := q) r2
    have c3_s := Rep.cell (p := (.L b cP vb (.node P cP vP D X)) :: q) r3
    have c3_b := Rep.cell (p := q) r3
    have c3_P := Rep.cell (p := (.R b cP vb (.node s black vs .nil C)) :: q) r3
    obtain ⟨m4, e4, r4, a4⟩ := Rep.set_color (p := (.R b cP vb (.node s black vs .nil C)) :: q) r3 black
    have c4_s := Rep.cell (p := (.L b cP vb (.node P black vP D X)) :: q) r4
    have c4_b := Rep.cell (p := q) r4
    have c4_P := Rep.cell (p := (.R b cP vb (.node s black vs .nil C)) :: q) r4
    refine ⟨m4, ?_, r4, a1.trans (a2.trans (a3.trans a4))⟩
    simp [map.fixDoubleBlack, map.fixDoubleBlack_red_child, isOnLeft, hasRedChild, hroot, d_s_b, d_s_P,
      d_b_s, d_b_P, d_P_s, d_P_b, t_C_s, u_C_s, t_C_b, u_C_b, t_C_P, u_C_P, t_D_s, u_D_s, t_D_b,
      u_D_b, t_D_P, u_D_P, t_X_s, u_X_s, t_X_b, u_X_b, t_X_P, u_X_P, get_color_eq c0_s,
      get_val_eq c0_s, get_l_eq c0_s, get_r_eq c0_s, get_parent_eq c0_s, get_color_eq c0_b,
      get_val_eq c0_b, get_l_eq c0_b, get_r_eq c0_b, get_parent_eq c0_b, get_color_eq c0_P,
      get_val_eq c0_P, get_l_eq c0_P, get_r_eq c0_P, get_parent_eq c0_P, get_color_eq c1_s,
      get_val_eq c1_s, get_l_eq c1_s, get_r_eq c1_s, get_parent_eq c1_s, get_color_eq c1_b,
      get_val_eq c1_b, get_l_eq c1_b, get_r_eq c1_b, get_parent_eq c1_b, get_color_eq c1_P,
      get_val_eq c1_P, get_l_eq c1_P, get_r_eq c1_P, get_parent_eq c1_P, get_color_eq c2_s,
      get_val_eq c2_s, get_l_eq c2_s, get_r_eq c2_s, get_parent_eq c2_s, get_color_eq c2_b,
      get_val_eq c2_b, get_l_eq c2_b, get_r_eq c2_b, get_parent_eq c2_b, get_color_eq c2_P,
      get_val_eq c2_P, get_l_eq c2_P, get_r_eq c2_P, get_parent_eq c2_P, get_color_eq c3_s,
      get_val_eq c3_s, get_l_eq c3_s, get_r_eq c3_s, get_parent_eq c3_s, get_color_eq c3_b,
      get_val_eq c3_b, get_l_eq c3_b, get_r_eq c3_b, get_parent_eq c3_b, get_color_eq c3_P,
      get_val_eq c3_P, get_l_eq c3_P, get_r_eq c3_P, get_parent_eq c3_P, get_color_eq c4_s,
      get_val_eq c4_s, get_l_eq c4_s, get_r_eq c4_s, get_parent_eq c4_s, get_color_eq c4_b,
      get_val_eq c4_b, get_l_eq c4_b, get_r_eq c4_b, get_parent_eq c4_b, get_color_eq c4_P,
      get_val_eq c4_P, get_l_eq c4_P, get_r_eq c4_P, get_parent_eq c4_P, e1, e2, e3, e4]
  | node sla csl vsl sll slr =>
    simp only [tree.color] at hsl
    have hn := h.nodup
    simp only [nodup_fill_iff, nodup_paddrs_L, nodup_paddrs_R, disjoint_paddrs_L,
      disjoint_paddrs_R, mem_paddrs_L, mem_paddrs_R, tree.addrs_node, tree.addrs_nil,
      List.nodup_append, List.nodup_cons, List.mem_append, List.mem_cons,
      List.disjoint_append_left, List.disjoint_append_right, List.disjoint_cons_left,
      List.disjoint_cons_right, not_or, paddrs_nil, List.disjoint_nil_left,
      List.disjoint_nil_right, List.not_mem_nil, List.nil_append, List.nodup_nil,
      not_false_eq_true, true_and, and_true] at hn
    casesm* _ ∧ _
    have d_sla_s : sla ≠ s := by first | assumption | exact Ne.symm (by assumption)
    have d_sla_b : sla ≠ b := by first | assumption | exact Ne.symm (by assumption)
    have d_sla_P : sla ≠ P := by first | assumption | exact Ne.symm (by assumption)
    have d_s_sla : s ≠ sla := by first | assumption | exact Ne.symm (by assumption)
    have d_s_b : s ≠ b := by first | assumption | exact Ne.symm (by assumption)
    have d_s_P : s ≠ P := by first | assumption | exact Ne.symm (by assumption)
    have d_b_sla : b ≠ sla := by first | assumption | exact Ne.symm (by assumption)
    have d_b_s : b ≠ s := by first | assumption | exact Ne.symm (by assumption)
    have d_b_P : b ≠ P := by first | assumption | exact Ne.symm (by assumption)
    have d_P_sla : P ≠ sla := by first | assumption | exact Ne.symm (by assumption)
    have d_P_s : P ≠ s := by first | assumption | exact Ne.symm (by assumption)
    have d_P_b : P ≠ b := by first | assumption | exact Ne.symm (by assumption)
    have t_sll_sla : sll.top ≠ some sla := tree.top_ne_of_not_mem (by assumption)
    have u_sll_sla : some sla ≠ sll.top := tree.ne_top_of_not_mem (by assumption)
    have t_sll_s : sll.top ≠ some s := tree.top_ne_of_not_mem (by assumption)
    have u_sll_s : some s ≠ sll.top := tree.ne_top_of_not_mem (by assumption)
    have t_sll_b : sll.top ≠ some b := tree.top_ne_of_not_mem (by assumption)
    have u_sll_b : some b ≠ sll.top := tree.ne_top_of_not_mem (by assumption)
    have t_sll_P : sll.top ≠ some P := tree.top_ne_of_not_mem (by assumption)
    have u_sll_P : some P ≠ sll.top := tree.ne_top_of_not_mem (by assumption)
    have t_slr_sla : slr.top ≠ some sla := tree.top_ne_of_not_mem (by assumption)
    have u_slr_sla : some sla ≠ slr.top := tree.ne_top_of_not_mem (by assumption)
    have t_slr_s : slr.top ≠ some s := tree.top_ne_of_not_mem (by assumption)
    have u_slr_s : some s ≠ slr.top := tree.ne_top_of_not_mem (by assumption)
    have t_slr_b : slr.top ≠ some b := tree.top_ne_of_not_mem (by assumption)
    have u_slr_b : some b ≠ slr.top := tree.ne_top_of_not_mem (by assumption)
    have t_slr_P : slr.top ≠ some P := tree.top_ne_of_not_mem (by assumption)
    have u_slr_P : some P ≠ slr.top := tree.ne_top_of_not_mem (by assumption)
    have t_C_sla : C.top ≠ some sla := tree.top_ne_of_not_mem (by assumption)
    have u_C_sla : some sla ≠ C.top := tree.ne_top_of_not_mem (by assumption)
    have t_C_s : C.top ≠ some s := tree.top_ne_of_not_mem (by assumption)
    have u_C_s : some s ≠ C.top := tree.ne_top_of_not_mem (by assumption)
    have t_C_b : C.top ≠ some b := tree.top_ne_of_not_mem (by assumption)
    have u_C_b : some b ≠ C.top := tree.ne_top_of_not_mem (by assumption)
    have t_C_P : C.top ≠ some P := tree.top_ne_of_not_mem (by assumption)
    have u_C_P : some P ≠ C.top := tree.ne_top_of_not_mem (by assumption)
    have t_D_sla : D.top ≠ some sla := tree.top_ne_of_not_mem (by assumption)
    have u_D_sla : some sla ≠ D.top := tree.ne_top_of_not_mem (by assumption)
    have t_D_s : D.top ≠ some s := tree.top_ne_of_not_mem (by assumption)
    have u_D_s : some s ≠ D.top := tree.ne_top_of_not_mem (by assumption)
    have t_D_b : D.top ≠ some b := tree.top_ne_of_not_mem (by assumption)
    have u_D_b : some b ≠ D.top := tree.ne_top_of_not_mem (by assumption)
    have t_D_P : D.top ≠ some P := tree.top_ne_of_not_mem (by assumption)
    have u_D_P : some P ≠ D.top := tree.ne_top_of_not_mem (by assumption)
    have t_X_sla : X.top ≠ some sla := tree.top_ne_of_not_mem (by assumption)
    have u_X_sla : some sla ≠ X.top := tree.ne_top_of_not_mem (by assumption)
    have t_X_s : X.top ≠ some s := tree.top_ne_of_not_mem (by assumption)
    have u_X_s : some s ≠ X.top := tree.ne_top_of_not_mem (by assumption)
    have t_X_b : X.top ≠ some b := tree.top_ne_of_not_mem (by assumption)
    have u_X_b : some b ≠ X.top := tree.ne_top_of_not_mem (by assumption)
    have t_X_P : X.top ≠ some P := tree.top_ne_of_not_mem (by assumption)
    have u_X_P : some P ≠ X.top := tree.ne_top_of_not_mem (by assumption)
    have c0_sla := Rep.cell (p := (.L s black vs (.node b red vb C D)) :: (.L P cP vP X) :: q) h
    have c0_s := Rep.cell (p := (.L P cP vP X) :: q) h
    have c0_b := Rep.cell (p := (.R s black vs (.node sla csl vsl sll slr)) :: (.L P cP vP X) :: q) h
    have c0_P := Rep.cell (p := q) h
    obtain ⟨m1, e1, r1, a1⟩ := Rep.set_color (p := (.R s black vs (.node sla csl vsl sll slr)) :: (.L P cP vP X) :: q) h cP
    have c1_sla := Rep.cell (p := (.L s black vs (.node b cP vb C D)) :: (.L P cP vP X) :: q) r1
    have c1_s := Rep.cell (p := (.L P cP vP X) :: q) r1
    have c1_b := Rep.cell (p := (.R s black vs (.node sla csl vsl sll slr)) :: (.L P cP vP X) :: q) r1
    have c1_P := Rep.cell (p := q) r1
    obtain ⟨m2, e2, r2, a2⟩ := l_rotate_spec (p := (.L P cP vP X) :: q) r1
    have c2_sla := Rep.cell (p := (.L s black vs C) :: (.L b cP vb D) :: (.L P cP vP X) :: q) r2
    have c2_s := Rep.cell (p := (.L b cP vb D) :: (.L P cP vP X) :: q) r2
    have c2_b := Rep.cell (p := (.L P cP vP X) :: q) r2
    have c2_P := Rep.cell (p := q) r2
    obtain ⟨m3, e3, r3, a3⟩ := r_rotate_spec (p := q) r2
    have c3_sla := Rep.cell (p := (.L s black vs C) :: (.L b cP vb (.node P cP vP D X)) :: q) r3
    have c3_s := Rep.cell (p := (.L b cP vb (.node P cP vP D X)) :: q) r3
    have c3_b := Rep.cell (p := q) r3
    have c3_P := Rep.cell (p := (.R b cP vb (.node s black vs (.node sla csl vsl sll slr) C)) :: q) r3
    obtain ⟨m4, e4, r4, a4⟩ := Rep.set_color (p := (.R b cP vb (.node s black vs (.node sla csl vsl sll slr) C)) :: q) r3 black
    have c4_sla := Rep.cell (p := (.L s black vs C) :: (.L b cP vb (.node P black vP D X)) :: q) r4
    have c4_s := Rep.cell (p := (.L b cP vb (.node P black vP D X)) :: q) r4
    have c4_b := Rep.cell (p := q) r4
    have c4_P := Rep.cell (p := (.R b cP vb (.node s black vs (.node sla csl vsl sll slr) C)) :: q) r4
    refine ⟨m4, ?_, r4, a1.trans (a2.trans (a3.trans a4))⟩
    simp [map.fixDoubleBlack, map.fixDoubleBlack_red_child, isOnLeft, hasRedChild, hroot, hsl, d_sla_s,
      d_sla_b, d_sla_P, d_s_sla, d_s_b, d_s_P, d_b_sla, d_b_s, d_b_P, d_P_sla, d_P_s, d_P_b,
      t_sll_sla, u_sll_sla, t_sll_s, u_sll_s, t_sll_b, u_sll_b, t_sll_P, u_sll_P, t_slr_sla,
      u_slr_sla, t_slr_s, u_slr_s, t_slr_b, u_slr_b, t_slr_P, u_slr_P, t_C_sla, u_C_sla, t_C_s,
      u_C_s, t_C_b, u_C_b, t_C_P, u_C_P, t_D_sla, u_D_sla, t_D_s, u_D_s, t_D_b, u_D_b, t_D_P,
      u_D_P, t_X_sla, u_X_sla, t_X_s, u_X_s, t_X_b, u_X_b, t_X_P, u_X_P, get_color_eq c0_sla,
      get_val_eq c0_sla, get_l_eq c0_sla, get_r_eq c0_sla, get_parent_eq c0_sla, get_color_eq c0_s,
      get_val_eq c0_s, get_l_eq c0_s, get_r_eq c0_s, get_parent_eq c0_s, get_color_eq c0_b,
      get_val_eq c0_b, get_l_eq c0_b, get_r_eq c0_b, get_parent_eq c0_b, get_color_eq c0_P,
      get_val_eq c0_P, get_l_eq c0_P, get_r_eq c0_P, get_parent_eq c0_P, get_color_eq c1_sla,
      get_val_eq c1_sla, get_l_eq c1_sla, get_r_eq c1_sla, get_parent_eq c1_sla, get_color_eq c1_s,
      get_val_eq c1_s, get_l_eq c1_s, get_r_eq c1_s, get_parent_eq c1_s, get_color_eq c1_b,
      get_val_eq c1_b, get_l_eq c1_b, get_r_eq c1_b, get_parent_eq c1_b, get_color_eq c1_P,
      get_val_eq c1_P, get_l_eq c1_P, get_r_eq c1_P, get_parent_eq c1_P, get_color_eq c2_sla,
      get_val_eq c2_sla, get_l_eq c2_sla, get_r_eq c2_sla, get_parent_eq c2_sla, get_color_eq c2_s,
      get_val_eq c2_s, get_l_eq c2_s, get_r_eq c2_s, get_parent_eq c2_s, get_color_eq c2_b,
      get_val_eq c2_b, get_l_eq c2_b, get_r_eq c2_b, get_parent_eq c2_b, get_color_eq c2_P,
      get_val_eq c2_P, get_l_eq c2_P, get_r_eq c2_P, get_parent_eq c2_P, get_color_eq c3_sla,
      get_val_eq c3_sla, get_l_eq c3_sla, get_r_eq c3_sla, get_parent_eq c3_sla, get_color_eq c3_s,
      get_val_eq c3_s, get_l_eq c3_s, get_r_eq c3_s, get_parent_eq c3_s, get_color_eq c3_b,
      get_val_eq c3_b, get_l_eq c3_b, get_r_eq c3_b, get_parent_eq c3_b, get_color_eq c3_P,
      get_val_eq c3_P, get_l_eq c3_P, get_r_eq c3_P, get_parent_eq c3_P, get_color_eq c4_sla,
      get_val_eq c4_sla, get_l_eq c4_sla, get_r_eq c4_sla, get_parent_eq c4_sla, get_color_eq c4_s,
      get_val_eq c4_s, get_l_eq c4_s, get_r_eq c4_s, get_parent_eq c4_s, get_color_eq c4_b,
      get_val_eq c4_b, get_l_eq c4_b, get_r_eq c4_b, get_parent_eq c4_b, get_color_eq c4_P,
      get_val_eq c4_P, get_l_eq c4_P, get_r_eq c4_P, get_parent_eq c4_P, e1, e2, e3, e4]

/-- A turn of `fixDoubleBlack` at a right child whose black sibling has no red child, below a red parent. -/
theorem fdb_black_red_parent_R {m : map K V} {q : List (frame K V)} {s P : Nat} {vs vP : Option (K × V)}
    {sl sr X : tree K V}
    (h : Rep m (fill q (.node P red vP (.node s black vs sl sr) X)))
    (hroot : X.top ≠ m._root)
    (hsl : sl.color ≠ red)
    (hsr : sr.color ≠ red) (fuel : Nat) :
    ∃ m2, map.fixDoubleBlack (fuel + 1) m X.top (some P) (some s) = some m2 ∧
      Rep m2 (fill q (.node P black vP (.node s red vs sl sr) X)) ∧ SameAux m m2 := by
  cases sl with
  | nil =>
    cases sr with
    | nil =>
      have hn := h.nodup
      simp only [nodup_fill_iff, nodup_paddrs_L, nodup_paddrs_R, disjoint_paddrs_L,
        disjoint_paddrs_R, mem_paddrs_L, mem_paddrs_R, tree.addrs_node, tree.addrs_nil,
        List.nodup_append, List.nodup_cons, List.mem_append, List.mem_cons,
        List.disjoint_append_left, List.disjoint_append_right, List.disjoint_cons_left,
        List.disjoint_cons_right, not_or, paddrs_nil, List.disjoint_nil_left,
        List.disjoint_nil_right, List.not_mem_nil, List.nil_append, List.nodup_nil,
        not_false_eq_true, true_and, and_true] at hn
      casesm* _ ∧ _
      have d_s_P : s ≠ P := by first | assumption | exact Ne.symm (by assumption)
      have d_P_s : P ≠ s := by first | assumption | exact Ne.symm (by assumption)
      have t_X_s : X.top ≠ some s := tree.top_ne_of_not_mem (by assumption)
      have u_X_s : some s ≠ X.top := tree.ne_top_of_not_mem (by assumption)
      have t_X_P : X.top ≠ some P := tree.top_ne_of_not_mem (by assumption)
      have u_X_P : some P ≠ X.top := tree.ne_top_of_not_mem (by assumption)
      have c0_s := Rep.cell (p := (.L P red vP X) :: q) h
      have c0_P := Rep.cell (p := q) h
      obtain ⟨m1, e1, r1, a1⟩ := Rep.set_color (p := (.L P red vP X) :: q) h red
      have c1_s := Rep.cell (p := (.L P red vP X) :: q) r1
      have c1_P := Rep.cell (p := q) r1
      obtain ⟨m2, e2, r2, a2⟩ := Rep.set_color (p := q) r1 black
      have c2_s := Rep.cell (p := (.L P black vP X) :: q) r2
      have c2_P := Rep.cell (p := q) r2
      refine ⟨m2, ?_, r2, a1.trans a2⟩
      simp [map.fixDoubleBlack, map.fixDoubleBlack_red_child, isOnLeft, hasRedChild, hroot, d_s_P, d_P_s,
        t_X_s, u_X_s, t_X_P, u_X_P, get_color_eq c0_s, get_val_eq c0_s, get_l_eq c0_s, get_r_eq c0_s,
        get_parent_eq c0_s, get_color_eq c0_P, get_val_eq c0_P, get_l_eq c0_P, get_r_eq c0_P,
        get_parent_eq c0_P, get_color_eq c1_s, get_val_eq c1_s, get_l_eq c1_s, get_r_eq c1_s,
        get_parent_eq c1_s, get_color_eq c1_P, get_val_eq c1_P, get_l_eq c1_P, get_r_eq c1_P,
        get_parent_eq c1_P, get_color_eq c2_s, get_val_eq c2_s, get_l_eq c2_s, get_r_eq c2_s,
        get_parent_eq c2_s, get_color_eq c2_P, get_val_eq c2_P, get_l_eq c2_P, get_r_eq c2_P,
        get_parent_eq c2_P, e1, e2]
    | node sra csr vsr srl srr =>
      simp only [tree.color] at hsr
      have hn := h.nodup
      simp only [nodup_fill_iff, nodup_paddrs_L, nodup_paddrs_R, disjoint_paddrs_L,
        disjoint_paddrs_R, mem_paddrs_L, mem_paddrs_R, tree.addrs_node, tree.addrs_nil,
        List.nodup_append, List.nodup_cons, List.mem_append, List.mem_cons,
        List.disjoint_append_left, List.disjoint_append_right, List.disjoint_cons_left,
        List.disjoint_cons_right, not_or, paddrs_nil, List.disjoint_nil_left,
        List.disjoint_nil_right, List.not_mem_nil, List.nil_append, List.nodup_nil,
        not_false_eq_true, true_and, and_true] at hn
      casesm* _ ∧ _
      have d_s_sra : s ≠ sra := by first | assumption | exact Ne.symm (by assumption)
      have d_s_P : s ≠ P := by first | assumption | exact Ne.symm (by assumption)
      have d_sra_s : sra ≠ s := by first | assumption | exact Ne.symm (by assumption)
      have d_sra_P : sra ≠ P := by first | assumption | exact Ne.symm (by assumption)
      have d_P_s : P ≠ s := by first | assumption | exact Ne.symm (by assumption)
      have d_P_sra : P ≠ sra := by first | assumption | exact Ne.symm (by assumption)
      have t_srl_s : srl.top ≠ some s := tree.top_ne_of_not_mem (by assumption)
      have u_srl_s : some s ≠ srl.top := tree.ne_top_of_not_mem (by assumption)
      have t_srl_sra : srl.top ≠ some sra := tree.top_ne_of_not_mem (by assumption)
      have u_srl_sra : some sra ≠ srl.top := tree.ne_top_of_not_mem (by assumption)
      have t_srl_P : srl.top ≠ some P := tree.top_ne_of_not_mem (by assumption)
      have u_srl_P : some P ≠ srl.top := tree.ne_top_of_not_mem (by assumption)
      have t_srr_s : srr.top ≠ some s := tree.top_ne_of_not_mem (by assumption)
      have u_srr_s : some s ≠ srr.top := tree.ne_top_of_not_mem (by assumption)
      have t_srr_sra : srr.top ≠ some sra := tree.top_ne_of_not_mem (by assumption)
      have u_srr_sra : some sra ≠ srr.top := tree.ne_top_of_not_mem (by assumption)
      have t_srr_P : srr.top ≠ some P := tree.top_ne_of_not_mem (by assumption)
      have u_srr_P : some P ≠ srr.top := tree.ne_top_of_not_mem (by assumption)
      have t_X_s : X.top ≠ some s := tree.top_ne_of_not_mem (by assumption)
      have u_X_s : some s ≠ X.top := tree.ne_top_of_not_mem (by assumption)
      have t_X_sra : X.top ≠ some sra := tree.top_ne_of_not_mem (by assumption)
      have u_X_sra : some sra ≠ X.top := tree.ne_top_of_not_mem (by assumption)
      have t_X_P : X.top ≠ some P := tree.top_ne_of_not_mem (by assumption)
      have u_X_P : some P ≠ X.top := tree.ne_top_of_not_mem (by assumption)
      have c0_s := Rep.cell (p := (.L P red vP X) :: q) h
      have c0_sra := Rep.cell (p := (.R s black vs .nil) :: (.L P red vP X) :: q) h
      have c0_P := Rep.cell (p := q) h
      obtain ⟨m1, e1, r1, a1⟩ := Rep.set_color (p := (.L P red vP X) :: q) h red
      have c1_s := Rep.cell (p := (.L P red vP X) :: q) r1
      have c1_sra := Rep.cell (p := (.R s red vs .nil) :: (.L P red vP X) :: q) r1
      have c1_P := Rep.cell (p := q) r1
      obtain ⟨m2, e2, r2, a2⟩ := Rep.set_color (p := q) r1 black
      have c2_s := Rep.cell (p := (.L P black vP X) :: q) r2
      have c2_sra := Rep.cell (p := (.R s red vs .nil) :: (.L P black vP X) :: q) r2
      have c2_P := Rep.cell (p := q) r2
      refine ⟨m2, ?_, r2, a1.trans a2⟩
      simp [map.fixDoubleBlack, map.fixDoubleBlack_red_child, isOnLeft, hasRedChild, hroot, hsr, d_s_sra,
        d_s_P, d_sra_s, d_sra_P, d_P_s, d_P_sra, t_srl_s, u_srl_s, t_srl_sra, u_srl_sra, t_srl_P,
        u_srl_P, t_srr_s, u_srr_s, t_srr_sra, u_srr_sra, t_srr_P, u_srr_P, t_X_s, u_X_s, t_X_sra,
        u_X_sra, t_X_P, u_X_P, get_color_eq c0_s, get_val_eq c0_s, get_l_eq c0_s, get_r_eq c0_s,
        get_parent_eq c0_s, get_color_eq c0_sra, get_val_eq c0_sra, get_l_eq c0_sra, get_r_eq c0_sra,
        get_parent_eq c0_sra, get_color_eq c0_P, get_val_eq c0_P, get_l_eq c0_P, get_r_eq c0_P,
        get_parent_eq c0_P, get_color_eq c1_s, get_val_eq c1_s, get_l_eq c1_s, get_r_eq c1_s,
        get_parent_eq c1_s, get_color_eq c1_sra, get_val_eq c1_sra, get_l_eq c1_sra, get_r_eq c1_sra,
        get_parent_eq c1_sra, get_color_eq c1_P, get_val_eq c1_P, get_l_eq c1_P, get_r_eq c1_P,
        get_parent_eq c1_P, get_color_eq c2_s, get_val_eq c2_s, get_l_eq c2_s, get_r_eq c2_s,
        get_parent_eq c2_s, get_color_eq c2_sra, get_val_eq c2_sra, get_l_eq c2_sra, get_r_eq c2_sra,
        get_parent_eq c2_sra, get_color_eq c2_P, get_val_eq c2_P, get_l_eq c2_P, get_r_eq c2_P,
        get_parent_eq c2_P, e1, e2]
  | node sla csl vsl sll slr =>
    simp only [tree.color] at hsl
    cases sr with
    | nil =>
      have hn := h.nodup
      simp only [nodup_fill_iff, nodup_paddrs_L, nodup_paddrs_R, disjoint_paddrs_L,
        disjoint_paddrs_R, mem_paddrs_L, mem_paddrs_R, tree.addrs_node, tree.addrs_nil,
        List.nodup_append, List.nodup_cons, List.mem_append, List.mem_cons,
        List.disjoint_append_left, List.disjoint_append_right, List.disjoint_cons_left,
        List.disjoint_cons_right, not_or, paddrs_nil, List.disjoint_nil_left,
        List.disjoint_nil_right, List.not_mem_nil, List.nil_append, List.nodup_nil,
        not_false_eq_true, true_and, and_true] at hn
      casesm* _ ∧ _
      have d_sla_s : sla ≠ s := by first | assumption | exact Ne.symm (by assumption)
      have d_sla_P : sla ≠ P := by first | assumption | exact Ne.symm (by assumption)
      have d_s_sla : s ≠ sla := by first | assumption | exact Ne.symm (by assumption)
      have d_s_P : s ≠ P := by first | assumption | exact Ne.symm (by assumption)
      have d_P_sla : P ≠ sla := by first | assumption | exact Ne.symm (by assumption)
      have d_P_s : P ≠ s := by first | assumption | exact Ne.symm (by assumption)
      have t_sll_sla : sll.top ≠ some sla := tree.top_ne_of_not_mem (by assumption)
      have u_sll_sla : some sla ≠ sll.top := tree.ne_top_of_not_mem (by assumption)
      have t_sll_s : sll.top ≠ some s := tree.top_ne_of_not_mem (by assumption)
      have u_sll_s : some s ≠ sll.top := tree.ne_top_of_not_mem (by assumption)
      have t_sll_P : sll.top ≠ some P := tree.top_ne_of_not_mem (by assumption)
      have u_sll_P : some P ≠ sll.top := tree.ne_top_of_not_mem (by assumption)
      have t_slr_sla : slr.top ≠ some sla := tree.top_ne_of_not_mem (by assumption)
      have u_slr_sla : some sla ≠ slr.top := tree.ne_top_of_not_mem (by assumption)
      have t_slr_s : slr.top ≠ some s := tree.top_ne_of_not_mem (by assumption)
      have u_slr_s : some s ≠ slr.top := tree.ne_top_of_not_mem (by assumption)
      have t_slr_P : slr.top ≠ some P := tree.top_ne_of_not_mem (by assumption)
      have u_slr_P : some P ≠ slr.top := tree.ne_top_of_not_mem (by assumption)
      have t_X_sla : X.top ≠ some sla := tree.top_ne_of_not_mem (by assumption)
      have u_X_sla : some sla ≠ X.top := tree.ne_top_of_not_mem (by assumption)
      have t_X_s : X.top ≠ some s := tree.top_ne_of_not_mem (by assumption)
      have u_X_s : some s ≠ X.top := tree.ne_top_of_not_mem (by assumption)
      have t_X_P : X.top ≠ some P := tree.top_ne_of_not_mem (by assumption)
      have u_X_P : some P ≠ X.top := tree.ne_top_of_not_mem (by assumption)
      have c0_sla := Rep.cell (p := (.L s black vs .nil) :: (.L P red vP X) :: q) h
      have c0_s := Rep.cell (p := (.L P red vP X) :: q) h
      have c0_P := Rep.cell (p := q) h
      obtain ⟨m1, e1, r1, a1⟩ := Rep.set_color (p := (.L P red vP X) :: q) h red
      have c1_sla := Rep.cell (p := (.L s red vs .nil) :: (.L P red vP X) :: q) r1
      have c1_s := Rep.cell (p := (.L P red vP X) :: q) r1
      have c1_P := Rep.cell (p := q) r1
      obtain ⟨m2, e2, r2, a2⟩ := Rep.set_color (p := q) r1 black
      have c2_sla := Rep.cell (p := (.L s red vs .nil) :: (.L P black vP X) :: q) r2
      have c2_s := Rep.cell (p := (.L P black vP X) :: q) r2
      have c2_P := Rep.cell (p := q) r2
      refine ⟨m2, ?_, r2, a1.trans a2⟩
      simp [map.fixDoubleBlack, map.fixDoubleBlack_red_child, isOnLeft, hasRedChild, hroot, hsl, d_sla_s,
        d_sla_P, d_s_sla, d_s_P, d_P_sla, d_P_s, t_sll_sla, u_sll_sla, t_sll_s, u_sll_s, t_sll_P,
        u_sll_P, t_slr_sla, u_slr_sla, t_slr_s, u_slr_s, t_slr_P, u_slr_P, t_X_sla, u_X_sla, t_X_s,
        u_X_s, t_X_P, u_X_P, get_color_eq c0_sla, get_val_eq c0_sla, get_l_eq c0_sla,
        get_r_eq c0_sla, get_parent_eq c0_sla, get_color_eq c0_s, get_val_eq c0_s, get_l_eq c0_s,
        get_r_eq c0_s, get_parent_eq c0_s, get_color_eq c0_P, get_val_eq c0_P, get_l_eq c0_P,
        get_r_eq c0_P, get_parent_eq c0_P, get_color_eq c1_sla, get_val_eq c1_sla, get_l_eq c1_sla,
        get_r_eq c1_sla, get_parent_eq c1_sla, get_color_eq c1_s, get_val_eq c1_s, get_l_eq c1_s,
        get_r_eq c1_s, get_parent_eq c1_s, get_color_eq c1_P, get_val_eq c1_P, get_l_eq c1_P,
        get_r_eq c1_P, get_parent_eq c1_P, get_color_eq c2_sla, get_val_eq c2_sla, get_l_eq c2_sla,
        get_r_eq c2_sla, get_parent_eq c2_sla, get_color_eq c2_s, get_val_eq c2_s, get_l_eq c2_s,
        get_r_eq c2_s, get_parent_eq c2_s, get_color_eq c2_P, get_val_eq c2_P, get_l_eq c2_P,
        get_r_eq c2_P, get_parent_eq c2_P, e1, e2]
    | node sra csr vsr srl srr =>
      simp only [tree.color] at hsr
      have hn := h.nodup
      simp only [nodup_fill_iff, nodup_paddrs_L, nodup_paddrs_R, disjoint_paddrs_L,
        disjoint_paddrs_R, mem_paddrs_L, mem_paddrs_R, tree.addrs_node, tree.addrs_nil,
        List.nodup_append, List.nodup_cons, List.mem_append, List.mem_cons,
        List.disjoint_append_left, List.disjoint_append_right, List.disjoint_cons_left,
        List.disjoint_cons_right, not_or, paddrs_nil, List.disjoint_nil_left,
        List.disjoint_nil_right, List.not_mem_nil, List.nil_append, List.nodup_nil,
        not_false_eq_true, true_and, and_true] at hn
      casesm* _ ∧ _
      have d_sla_s : sla ≠ s := by first | assumption | exact Ne.symm (by assumption)
      have d_sla_sra : sla ≠ sra := by first | assumption | exact Ne.symm (by assumption)
      have d_sla_P : sla ≠ P := by first | assumption | exact Ne.symm (by assumption)
      have d_s_sla : s ≠ sla := by first | assumption | exact Ne.symm (by assumption)
      have d_s_sra : s ≠ sra := by first | assumption | exact Ne.symm (by assumption)
      have d_s_P : s ≠ P := by first | assumption | exact Ne.symm (by assumption)
      have d_sra_sla : sra ≠ sla := by first | assumption | exact Ne.symm (by assumption)
      have d_sra_s : sra ≠ s := by first | assumption | exact Ne.symm (by assumption)
      have d_sra_P : sra ≠ P := by first | assumption | exact Ne.symm (by assumption)
      have d_P_sla : P ≠ sla := by first | assumption | exact Ne.symm (by assumption)
      have d_P_s : P ≠ s := by first | assumption | exact Ne.symm (by assumption)
      have d_P_sra : P ≠ sra := by first | assumption | exact Ne.symm (by assumption)
      have t_sll_sla : sll.top ≠ some sla := tree.top_ne_of_not_mem (by assumption)
      have u_sll_sla : some sla ≠ sll.top := tree.ne_top_of_not_mem (by assumption)
      have t_sll_s : sll.top ≠ some s := tree.top_ne_of_not_mem (by assumption)
      have u_sll_s : some s ≠ sll.top := tree.ne_top_of_not_mem (by assumption)
      have t_sll_sra : sll.top ≠ some sra := tree.top_ne_of_not_mem (by assumption)
      have u_sll_sra : some sra ≠ sll.top := tree.ne_top_of_not_mem (by assumption)
      have t_sll_P : sll.top ≠ some P := tree.top_ne_of_not_mem (by assumption)
      have u_sll_P : some P ≠ sll.top := tree.ne_top_of_not_mem (by assumption)
      have t_slr_sla : slr.top ≠ some sla := tree.top_ne_of_not_mem (by assumption)
      have u_slr_sla : some sla ≠ slr.top := tree.ne_top_of_not_mem (by assumption)
      have t_slr_s : slr.top ≠ some s := tree.top_ne_of_not_mem (by assumption)
      have u_slr_s : some s ≠ slr.top := tree.ne_top_of_not_mem (by assumption)
      have t_slr_sra : slr.top ≠ some sra := tree.top_ne_of_not_mem (by assumption)
      have u_slr_sra : some sra ≠ slr.top := tree.ne_top_of_not_mem (by assumption)
      have t_slr_P : slr.top ≠ some P := tree.top_ne_of_not_mem (by assumption)
      have u_slr_P : some P ≠ slr.top := tree.ne_top_of_not_mem (by assumption)
      have t_srl_sla : srl.top ≠ some sla := tree.top_ne_of_not_mem (by assumption)
      have u_srl_sla : some sla ≠ srl.top := tree.ne_top_of_not_mem (by assumption)
      have t_srl_s : srl.top ≠ some s := tree.top_ne_of_not_mem (by assumption)
      have u_srl_s : some s ≠ srl.top := tree.ne_top_of_not_mem (by assumption)
      have t_srl_sra : srl.top ≠ some sra := tree.top_ne_of_not_mem (by assumption)
      have u_srl_sra : some sra ≠ srl.top := tree.ne_top_of_not_mem (by assumption)
      have t_srl_P : srl.top ≠ some P := tree.top_ne_of_not_mem (by assumption)
      have u_srl_P : some P ≠ srl.top := tree.ne_top_of_not_mem (by assumption)
      have t_srr_sla : srr.top ≠ some sla := tree.top_ne_of_not_mem (by assumption)
      have u_srr_sla : some sla ≠ srr.top := tree.ne_top_of_not_mem (by assumption)
      have t_srr_s : srr.top ≠ some s := tree.top_ne_of_not_mem (by assumption)
      have u_srr_s : some s ≠ srr.top := tree.ne_top_of_not_mem (by assumption)
      have t_srr_sra : srr.top ≠ some sra := tree.top_ne_of_not_mem (by assumption)
      have u_srr_sra : some sra ≠ srr.top := tree.ne_top_of_not_mem (by assumption)
      have t_srr_P : srr.top ≠ some P := tree.top_ne_of_not_mem (by assumption)
      have u_srr_P : some P ≠ srr.top := tree.ne_top_of_not_mem (by assumption)
      have t_X_sla : X.top ≠ some sla := tree.top_ne_of_not_mem (by assumption)
      have u_X_sla : some sla ≠ X.top := tree.ne_top_of_not_mem (by assumption)
      have t_X_s : X.top ≠ some s := tree.top_ne_of_not_mem (by assumption)
      have u_X_s : some s ≠ X.top := tree.ne_top_of_not_mem (by assumption)
      have t_X_sra : X.top ≠ some sra := tree.top_ne_of_not_mem (by assumption)
      have u_X_sra : some sra ≠ X.top := tree.ne_top_of_not_mem (by assumption)
      have t_X_P : X.top ≠ some P := tree.top_ne_of_not_mem (by assumption)
      have u_X_P : some P ≠ X.top := tree.ne_top_of_not_mem (by assumption)
      have c0_sla := Rep.cell (p := (.L s black vs (.node sra csr vsr srl srr)) :: (.L P red vP X) :: q) h
      have c0_s := Rep.cell (p := (.L P red vP X) :: q) h
      have c0_sra := Rep.cell (p := (.R s black vs (.node sla csl vsl sll slr)) :: (.L P red vP X) :: q) h
      have c0_P := Rep.cell (p := q) h
      obtain ⟨m1, e1, r1, a1⟩ := Rep.set_color (p := (.L P red vP X) :: q) h red
      have c1_sla := Rep.cell (p := (.L s red vs (.node sra csr vsr srl srr)) :: (.L P red vP X) :: q) r1
      have c1_s := Rep.cell (p := (.L P red vP X) :: q) r1
      have c1_sra := Rep.cell (p := (.R s red vs (.node sla csl vsl sll slr)) :: (.L P red vP X) :: q) r1
      have c1_P := Rep.cell (p := q) r1
      obtain ⟨m2, e2, r2, a2⟩ := Rep.set_color (p := q) r1 black
      have c2_sla := Rep.cell (p := (.L s red vs (.node sra csr vsr srl srr)) :: (.L P black vP X) :: q) r2
      have c2_s := Rep.cell (p := (.L P black vP X) :: q) r2
      have c2_sra := Rep.cell (p := (.R s red vs (.node sla csl vsl sll slr)) :: (.L P black vP X) :: q) r2
      have c2_P := Rep.cell (p := q) r2
      refine ⟨m2, ?_, r2, a1.trans a2⟩
      simp [map.fixDoubleBlack, map.fixDoubleBlack_red_child, isOnLeft, hasRedChild, hroot, hsl, hsr,
        d_sla_s, d_sla_sra, d_sla_P, d_s_sla, d_s_sra, d_s_P, d_sra_sla, d_sra_s, d_sra_P, d_P_sla,
        d_P_s, d_P_sra, t_sll_sla, u_sll_sla, t_sll_s, u_sll_s, t_sll_sra, u_sll_sra, t_sll_P,
        u_sll_P, t_slr_sla, u_slr_sla, t_slr_s, u_slr_s, t_slr_sra, u_slr_sra, t_slr_P, u_slr_P,
        t_srl_sla, u_srl_sla, t_srl_s, u_srl_s, t_srl_sra, u_srl_sra, t_srl_P, u_srl_P, t_srr_sla,
        u_srr_sla, t_srr_s, u_srr_s, t_srr_sra, u_srr_sra, t_srr_P, u_srr_P, t_X_sla, u_X_sla, t_X_s,
        u_X_s, t_X_sra, u_X_sra, t_X_P, u_X_P, get_color_eq c0_sla, get_val_eq c0_sla,
        get_l_eq c0_sla, get_r_eq c0_sla, get_parent_eq c0_sla, get_color_eq c0_s, get_val_eq c0_s,
        get_l_eq c0_s, get_r_eq c0_s, get_parent_eq c0_s, get_color_eq c0_sra, get_val_eq c0_sra,
        get_l_eq c0_sra, get_r_eq c0_sra, get_parent_eq c0_sra, get_color_eq c0_P, get_val_eq c0_P,
        get_l_eq c0_P, get_r_eq c0_P, get_parent_eq c0_P, get_color_eq c1_sla, get_val_eq c1_sla,
        get_l_eq c1_sla, get_r_eq c1_sla, get_parent_eq c1_sla, get_color_eq c1_s, get_val_eq c1_s,
        get_l_eq c1_s, get_r_eq c1_s, get_parent_eq c1_s, get_color_eq c1_sra, get_val_eq c1_sra,
        get_l_eq c1_sra, get_r_eq c1_sra, get_parent_eq c1_sra, get_color_eq c1_P, get_val_eq c1_P,
        get_l_eq c1_P, get_r_eq c1_P, get_parent_eq c1_P, get_color_eq c2_sla, get_val_eq c2_sla,
        get_l_eq c2_sla, get_r_eq c2_sla, get_parent_eq c2_sla, get_color_eq c2_s, get_val_eq c2_s,
        get_l_eq c2_s, get_r_eq c2_s, get_parent_eq c2_s, get_color_eq c2_sra, get_val_eq c2_sra,
        get_l_eq c2_sra, get_r_eq c2_sra, get_parent_eq c2_sra, get_color_eq c2_P, get_val_eq c2_P,
        get_l_eq c2_P, get_r_eq c2_P, get_parent_eq c2_P, e1, e2]

/-- A turn of `fixDoubleBlack` at a right child whose black sibling has no red child, below a black parent: the parent is repaired next. -/
theorem fdb_black_black_parent_R {m : map K V} {q : List (frame K V)} {s P : Nat} {vs vP : Option (K × V)}
    {sl sr X : tree K V}
    (h : Rep m (fill q (.node P black vP (.node s black vs sl sr) X)))
    (hroot : X.top ≠ m._root)
    (hsl : sl.color ≠ red)
    (hsr : sr.color ≠ red) (fuel : Nat) :
    ∃ m2, map.fixDoubleBlack (fuel + 1) m X.top (some P) (some s) = map.fixDoubleBlack fuel m2 (some P) (ptop q) (psib q) ∧
      Rep m2 (fill q (.node P black vP (.node s red vs sl sr) X)) ∧ SameAux m m2 := by
  cases sl with
  | nil =>
    cases sr with
    | nil =>
      have hn := h.nodup
      simp only [nodup_fill_iff, nodup_paddrs_L, nodup_paddrs_R, disjoint_paddrs_L,
        disjoint_paddrs_R, mem_paddrs_L, mem_paddrs_R, tree.addrs_node, tree.addrs_nil,
        List.nodup_append, List.nodup_cons, List.mem_append, List.mem_cons,
        List.disjoint_append_left, List.disjoint_append_right, List.disjoint_cons_left,
        List.disjoint_cons_right, not_or, paddrs_nil, List.disjoint_nil_left,
        List.disjoint_nil_right, List.not_mem_nil, List.nil_append, List.nodup_nil,
        not_false_eq_true, true_and, and_true] at hn
      casesm* _ ∧ _
      have d_s_P : s ≠ P := by first | assumption | exact Ne.symm (by assumption)
      have d_P_s : P ≠ s := by first | assumption | exact Ne.symm (by assumption)
      have t_X_s : X.top ≠ some s := tree.top_ne_of_not_mem (by assumption)
      have u_X_s : some s ≠ X.top := tree.ne_top_of_not_mem (by assumption)
      have t_X_P : X.top ≠ some P := tree.top_ne_of_not_mem (by assumption)
      have u_X_P : some P ≠ X.top := tree.ne_top_of_not_mem (by assumption)
      have c0_s := Rep.cell (p := (.L P black vP X) :: q) h
      have c0_P := Rep.cell (p := q) h
      obtain ⟨m1, e1, r1, a1⟩ := Rep.set_color (p := (.L P black vP X) :: q) h red
      have c1_s := Rep.cell (p := (.L P black vP X) :: q) r1
      have c1_P := Rep.cell (p := q) r1
      have sib_eq := Rep.sibling_eq (p := q) r1
      refine ⟨m1, ?_, r1, a1⟩
      simp [map.fixDoubleBlack, map.fixDoubleBlack_red_child, isOnLeft, hasRedChild, hroot, d_s_P, d_P_s,
        t_X_s, u_X_s, t_X_P, u_X_P, get_color_eq c0_s, get_val_eq c0_s, get_l_eq c0_s, get_r_eq c0_s,
        get_parent_eq c0_s, get_color_eq c0_P, get_val_eq c0_P, get_l_eq c0_P, get_r_eq c0_P,
        get_parent_eq c0_P, get_color_eq c1_s, get_val_eq c1_s, get_l_eq c1_s, get_r_eq c1_s,
        get_parent_eq c1_s, get_color_eq c1_P, get_val_eq c1_P, get_l_eq c1_P, get_r_eq c1_P,
        get_parent_eq c1_P, e1, sib_eq]
    | node sra csr vsr srl srr =>
      simp only [tree.color] at hsr
      have hn := h.nodup
      simp only [nodup_fill_iff, nodup_paddrs_L, nodup_paddrs_R, disjoint_paddrs_L,
        disjoint_paddrs_R, mem_paddrs_L, mem_paddrs_R, tree.addrs_node, tree.addrs_nil,
        List.nodup_append, List.nodup_cons, List.mem_append, List.mem_cons,
        List.disjoint_append_left, List.disjoint_append_right, List.disjoint_cons_left,
        List.disjoint_cons_right, not_or, paddrs_nil, List.disjoint_nil_left,
        List.disjoint_nil_right, List.not_mem_nil, List.nil_append, List.nodup_nil,
        not_false_eq_true, true_and, and_true] at hn
      casesm* _ ∧ _
      have d_s_sra : s ≠ sra := by first | assumption | exact Ne.symm (by assumption)
      have d_s_P : s ≠ P := by first | assumption | exact Ne.symm (by assumption)
      have d_sra_s : sra ≠ s := by first | assumption | exact Ne.symm (by assumption)
      have d_sra_P : sra ≠ P := by first | assumption | exact Ne.symm (by assumption)
      have d_P_s : P ≠ s := by first | assumption | exact Ne.symm (by assumption)
      have d_P_sra : P ≠ sra := by first | assumption | exact Ne.symm (by assumption)
      have t_srl_s : srl.top ≠ some s := tree.top_ne_of_not_mem (by assumption)
      have u_srl_s : some s ≠ srl.top := tree.ne_top_of_not_mem (by assumption)
      have t_srl_sra : srl.top ≠ some sra := tree.top_ne_of_not_mem (by assumption)
      have u_srl_sra : some sra ≠ srl.top := tree.ne_top_of_not_mem (by assumption)
      have t_srl_P : srl.top ≠ some P := tree.top_ne_of_not_mem (by assumption)
      have u_srl_P : some P ≠ srl.top := tree.ne_top_of_not_mem (by assumption)
      have t_srr_s : srr.top ≠ some s := tree.top_ne_of_not_mem (by assumption)
      have u_srr_s : some s ≠ srr.top := tree.ne_top_of_not_mem (by assumption)
      have t_srr_sra : srr.top ≠ some sra := tree.top_ne_of_not_mem (by assumption)
      have u_srr_sra : some sra ≠ srr.top := tree.ne_top_of_not_mem (by assumption)
      have t_srr_P : srr.top ≠ some P := tree.top_ne_of_not_mem (by assumption)
      have u_srr_P : some P ≠ srr.top := tree.ne_top_of_not_mem (by assumption)
      have t_X_s : X.top ≠ some s := tree.top_ne_of_not_mem (by assumption)
      have u_X_s : some s ≠ X.top := tree.ne_top_of_not_mem (by assumption)
      have t_X_sra : X.top ≠ some sra := tree.top_ne_of_not_mem (by assumption)
      have u_X_sra : some sra ≠ X.top := tree.ne_top_of_not_mem (by assumption)
      have t_X_P : X.top ≠ some P := tree.top_ne_of_not_mem (by assumption)
      have u_X_P : some P ≠ X.top := tree.ne_top_of_not_mem (by assumption)
      have c0_s := Rep.cell (p := (.L P black vP X) :: q) h
      have c0_sra := Rep.cell (p := (.R s black vs .nil) :: (.L P black vP X) :: q) h
      have c0_P := Rep.cell (p := q) h
      obtain ⟨m1, e1, r1, a1⟩ := Rep.set_color (p := (.L P black vP X) :: q) h red
      have c1_s := Rep.cell (p := (.L P black vP X) :: q) r1
      have c1_sra := Rep.cell (p := (.R s red vs .nil) :: (.L P black vP X) :: q) r1
      have c1_P := Rep.cell (p := q) r1
      have sib_eq := Rep.sibling_eq (p := q) r1
      refine ⟨m1, ?_, r1, a1⟩
      simp [map.fixDoubleBlack, map.fixDoubleBlack_red_child, isOnLeft, hasRedChild, hroot, hsr, d_s_sra,
        d_s_P, d_sra_s, d_sra_P, d_P_s, d_P_sra, t_srl_s, u_srl_s, t_srl_sra, u_srl_sra, t_srl_P,
        u_srl_P, t_srr_s, u_srr_s, t_srr_sra, u_srr_sra, t_srr_P, u_srr_P, t_X_s, u_X_s, t_X_sra,
        u_X_sra, t_X_P, u_X_P, get_color_eq c0_s, get_val_eq c0_s, get_l_eq c0_s, get_r_eq c0_s,
        get_parent_eq c0_s, get_color_eq c0_sra, get_val_eq c0_sra, get_l_eq c0_sra, get_r_eq c0_sra,
        get_parent_eq c0_sra, get_color_eq c0_P, get_val_eq c0_P, get_l_eq c0_P, get_r_eq c0_P,
        get_parent_eq c0_P, get_color_eq c1_s, get_val_eq c1_s, get_l_eq c1_s, get_r_eq c1_s,
        get_parent_eq c1_s, get_color_eq c1_sra, get_val_eq c1_sra, get_l_eq c1_sra, get_r_eq c1_sra,
        get_parent_eq c1_sra, get_color_eq c1_P, get_val_eq c1_P, get_l_eq c1_P, get_r_eq c1_P,
        get_parent_eq c1_P, e1, sib_eq]
  | node sla csl vsl sll slr =>
    simp only [tree.color] at hsl
    cases sr with
    | nil =>
      have hn := h.nodup
      simp only [nodup_fill_iff, nodup_paddrs_L, nodup_paddrs_R, disjoint_paddrs_L,
        disjoint_paddrs_R, mem_paddrs_L, mem_paddrs_R, tree.addrs_node, tree.addrs_nil,
        List.nodup_append, List.nodup_cons, List.mem_append, List.mem_cons,
        List.disjoint_append_left, List.disjoint_append_right, List.disjoint_cons_left,
        List.disjoint_cons_right, not_or, paddrs_nil, List.disjoint_nil_left,
        List.disjoint_nil_right, List.not_mem_nil, List.nil_append, List.nodup_nil,
        not_false_eq_true, true_and, and_true] at hn
      casesm* _ ∧ _
      have d_sla_s : sla ≠ s := by first | assumption | exact Ne.symm (by assumption)
      have d_sla_P : sla ≠ P := by first | assumption | exact Ne.symm (by assumption)
      have d_s_sla : s ≠ sla := by first | assumption | exact Ne.symm (by assumption)
      have d_s_P : s ≠ P := by first | assumption | exact Ne.symm (by assumption)
      have d_P_sla : P ≠ sla := by first | assumption | exact Ne.symm (by assumption)
      have d_P_s : P ≠ s := by first | assumption | exact Ne.symm (by assumption)
      have t_sll_sla : sll.top ≠ some sla := tree.top_ne_of_not_mem (by assumption)
      have u_sll_sla : some sla ≠ sll.top := tree.ne_top_of_not_mem (by assumption)
      have t_sll_s : sll.top ≠ some s := tree.top_ne_of_not_mem (by assumption)
      have u_sll_s : some s ≠ sll.top := tree.ne_top_of_not_mem (by assumption)
      have t_sll_P : sll.top ≠ some P := tree.top_ne_of_not_mem (by assumption)
      have u_sll_P : some P ≠ sll.top := tree.ne_top_of_not_mem (by assumption)
      have t_slr_sla : slr.top ≠ some sla := tree.top_ne_of_not_mem (by assumption)
      have u_slr_sla : some sla ≠ slr.top := tree.ne_top_of_not_mem (by assumption)
      have t_slr_s : slr.top ≠ some s := tree.top_ne_of_not_mem (by assumption)
      have u_slr_s : some s ≠ slr.top := tree.ne_top_of_not_mem (by assumption)
      have t_slr_P : slr.top ≠ some P := tree.top_ne_of_not_mem (by assumption)
      have u_slr_P : some P ≠ slr.top := tree.ne_top_of_not_mem (by assumption)
      have t_X_sla : X.top ≠ some sla := tree.top_ne_of_not_mem (by assumption)
      have u_X_sla : some sla ≠ X.top := tree.ne_top_of_not_mem (by assumption)
      have t_X_s : X.top ≠ some s := tree.top_ne_of_not_mem (by assumption)
      have u_X_s : some s ≠ X.top := tree.ne_top_of_not_mem (by assumption)
      have t_X_P : X.top ≠ some P := tree.top_ne_of_not_mem (by assumption)
      have u_X_P : some P ≠ X.top := tree.ne_top_of_not_mem (by assumption)
      have c0_sla := Rep.cell (p := (.L s black vs .nil) :: (.L P black vP X) :: q) h
      have c0_s := Rep.cell (p := (.L P black vP X) :: q) h
      have c0_P := Rep.cell (p := q) h
      obtain ⟨m1, e1, r1, a1⟩ := Rep.set_color (p := (.L P black vP X) :: q) h red
      have c1_sla := Rep.cell (p := (.L s red vs .nil) :: (.L P black vP X) :: q) r1
      have c1_s := Rep.cell (p := (.L P black vP X) :: q) r1
      have c1_P := Rep.cell (p := q) r1
      have sib_eq := Rep.sibling_eq (p := q) r1
      refine ⟨m1, ?_, r1, a1⟩
      simp [map.fixDoubleBlack, map.fixDoubleBlack_red_child, isOnLeft, hasRedChild, hroot, hsl, d_sla_s,
        d_sla_P, d_s_sla, d_s_P, d_P_sla, d_P_s, t_sll_sla, u_sll_sla, t_sll_s, u_sll_s, t_sll_P,
        u_sll_P, t_slr_sla, u_slr_sla, t_slr_s, u_slr_s, t_slr_P, u_slr_P, t_X_sla, u_X_sla, t_X_s,
        u_X_s, t_X_P, u_X_P, get_color_eq c0_sla, get_val_eq c0_sla, get_l_eq c0_sla,
        get_r_eq c0_sla, get_parent_eq c0_sla, get_color_eq c0_s, get_val_eq c0_s, get_l_eq c0_s,
        get_r_eq c0_s, get_parent_eq c0_s, get_color_eq c0_P, get_val_eq c0_P, get_l_eq c0_P,
        get_r_eq c0_P, get_parent_eq c0_P, get_color_eq c1_sla, get_val_eq c1_sla, get_l_eq c1_sla,
        get_r_eq c1_sla, get_parent_eq c1_sla, get_color_eq c1_s, get_val_eq c1_s, get_l_eq c1_s,
        get_r_eq c1_s, get_parent_eq c1_s, get_color_eq c1_P, get_val_eq c1_P, get_l_eq c1_P,
        get_r_eq c1_P, get_parent_eq c1_P, e1, sib_eq]
    | node sra csr vsr srl srr =>
      simp only [tree.color] at hsr
      have hn := h.nodup
      simp only [nodup_fill_iff, nodup_paddrs_L, nodup_paddrs_R, disjoint_paddrs_L,
        disjoint_paddrs_R, mem_paddrs_L, mem_paddrs_R, tree.addrs_node, tree.addrs_nil,
        List.nodup_append, List.nodup_cons, List.mem_append, List.mem_cons,
        List.disjoint_append_left, List.disjoint_append_right, List.disjoint_cons_left,
        List.disjoint_cons_right, not_or, paddrs_nil, List.disjoint_nil_left,
        List.disjoint_nil_right, List.not_mem_nil, List.nil_append, List.nodup_nil,
        not_false_eq_true, true_and, and_true] at hn
      casesm* _ ∧ _
      have d_sla_s : sla ≠ s := by first | assumption | exact Ne.symm (by assumption)
      have d_sla_sra : sla ≠ sra := by first | assumption | exact Ne.symm (by assumption)
      have d_sla_P : sla ≠ P := by first | assumption | exact Ne.symm (by assumption)
      have d_s_sla : s ≠ sla := by first | assumption | exact Ne.symm (by assumption)
      have d_s_sra : s ≠ sra := by first | assumption | exact Ne.symm (by assumption)
      have d_s_P : s ≠ P := by first | assumption | exact Ne.symm (by assumption)
      have d_sra_sla : sra ≠ sla := by first | assumption | exact Ne.symm (by assumption)
      have d_sra_s : sra ≠ s := by first | assumption | exact Ne.symm (by assumption)
      have d_sra_P : sra ≠ P := by first | assumption | exact Ne.symm (by assumption)
      have d_P_sla : P ≠ sla := by first | assumption | exact Ne.symm (by assumption)
      have d_P_s : P ≠ s := by first | assumption | exact Ne.symm (by assumption)
      have d_P_sra : P ≠ sra := by first | assumption | exact Ne.symm (by assumption)
      have t_sll_sla : sll.top ≠ some sla := tree.top_ne_of_not_mem (by assumption)
      have u_sll_sla : some sla ≠ sll.top := tree.ne_top_of_not_mem (by assumption)
      have t_sll_s : sll.top ≠ some s := tree.top_ne_of_not_mem (by assumption)
      have u_sll_s : some s ≠ sll.top := tree.ne_top_of_not_mem (by assumption)
      have t_sll_sra : sll.top ≠ some sra := tree.top_ne_of_not_mem (by assumption)
      have u_sll_sra : some sra ≠ sll.top := tree.ne_top_of_not_mem (by assumption)
      have t_sll_P : sll.top ≠ some P := tree.top_ne_of_not_mem (by assumption)
      have u_sll_P : some P ≠ sll.top := tree.ne_top_of_not_mem (by assumption)
      have t_slr_sla : slr.top ≠ some sla := tree.top_ne_of_not_mem (by assumption)
      have u_slr_sla : some sla ≠ slr.top := tree.ne_top_of_not_mem (by assumption)
      have t_slr_s : slr.top ≠ some s := tree.top_ne_of_not_mem (by assumption)
      have u_slr_s : some s ≠ slr.top := tree.ne_top_of_not_mem (by assumption)
      have t_slr_sra : slr.top ≠ some sra := tree.top_ne_of_not_mem (by assumption)
      have u_slr_sra : some sra ≠ slr.top := tree.ne_top_of_not_mem (by assumption)
      have t_slr_P : slr.top ≠ some P := tree.top_ne_of_not_mem (by assumption)
      have u_slr_P : some P ≠ slr.top := tree.ne_top_of_not_mem (by assumption)
      have t_srl_sla : srl.top ≠ some sla := tree.top_ne_of_not_mem (by assumption)
      have u_srl_sla : some sla ≠ srl.top := tree.ne_top_of_not_mem (by assumption)
      have t_srl_s : srl.top ≠ some s := tree.top_ne_of_not_mem (by assumption)
      have u_srl_s : some s ≠ srl.top := tree.ne_top_of_not_mem (by assumption)
      have t_srl_sra : srl.top ≠ some sra := tree.top_ne_of_not_mem (by assumption)
      have u_srl_sra : some sra ≠ srl.top := tree.ne_top_of_not_mem (by assumption)
      have t_srl_P : srl.top ≠ some P := tree.top_ne_of_not_mem (by assumption)
      have u_srl_P : some P ≠ srl.top := tree.ne_top_of_not_mem (by assumption)
      have t_srr_sla : srr.top ≠ some sla := tree.top_ne_of_not_mem (by assumption)
      have u_srr_sla : some sla ≠ srr.top := tree.ne_top_of_not_mem (by assumption)
      have t_srr_s : srr.top ≠ some s := tree.top_ne_of_not_mem (by assumption)
      have u_srr_s : some s ≠ srr.top := tree.ne_top_of_not_mem (by assumption)
      have t_srr_sra : srr.top ≠ some sra := tree.top_ne_of_not_mem (by assumption)
      have u_srr_sra : some sra ≠ srr.top := tree.ne_top_of_not_mem (by assumption)
      have t_srr_P : srr.top ≠ some P := tree.top_ne_of_not_mem (by assumption)
      have u_srr_P : some P ≠ srr.top := tree.ne_top_of_not_mem (by assumption)
      have t_X_sla : X.top ≠ some sla := tree.top_ne_of_not_mem (by assumption)
      have u_X_sla : some sla ≠ X.top := tree.ne_top_of_not_mem (by assumption)
      have t_X_s : X.top ≠ some s := tree.top_ne_of_not_mem (by assumption)
      have u_X_s : some s ≠ X.top := tree.ne_top_of_not_mem (by assumption)
      have t_X_sra : X.top ≠ some sra := tree.top_ne_of_not_mem (by assumption)
      have u_X_sra : some sra ≠ X.top := tree.ne_top_of_not_mem (by assumption)
      have t_X_P : X.top ≠ some P := tree.top_ne_of_not_mem (by assumption)
      have u_X_P : some P ≠ X.top := tree.ne_top_of_not_mem (by assumption)
      have c0_sla := Rep.cell (p := (.L s black vs (.node sra csr vsr srl srr)) :: (.L P black vP X) :: q) h
      have c0_s := Rep.cell (p := (.L P black vP X) :: q) h
      have c0_sra := Rep.cell (p := (.R s black vs (.node sla csl vsl sll slr)) :: (.L P black vP X) :: q) h
      have c0_P := Rep.cell (p := q) h
      obtain ⟨m1, e1, r1, a1⟩ := Rep.set_color (p := (.L P black vP X) :: q) h red
      have c1_sla := Rep.cell (p := (.L s red vs (.node sra csr vsr srl srr)) :: (.L P black vP X) :: q) r1
      have c1_s := Rep.cell (p := (.L P black vP X) :: q) r1
      have c1_sra := Rep.cell (p := (.R s red vs (.node sla csl vsl sll slr)) :: (.L P black vP X) :: q) r1
      have c1_P := Rep.cell (p := q) r1
      have sib_eq := Rep.sibling_eq (p := q) r1
      refine ⟨m1, ?_, r1, a1⟩
      simp [map.fixDoubleBlack, map.fixDoubleBlack_red_child, isOnLeft, hasRedChild, hroot, hsl, hsr,
        d_sla_s, d_sla_sra, d_sla_P, d_s_sla, d_s_sra, d_s_P, d_sra_sla, d_sra_s, d_sra_P, d_P_sla,
        d_P_s, d_P_sra, t_sll_sla, u_sll_sla, t_sll_s, u_sll_s, t_sll_sra, u_sll_sra, t_sll_P,
        u_sll_P, t_slr_sla, u_slr_sla, t_slr_s, u_slr_s, t_slr_sra, u_slr_sra, t_slr_P, u_slr_P,
        t_srl_sla, u_srl_sla, t_srl_s, u_srl_s, t_srl_sra, u_srl_sra, t_srl_P, u_srl_P, t_srr_sla,
        u_srr_sla, t_srr_s, u_srr_s, t_srr_sra, u_srr_sra, t_srr_P, u_srr_P, t_X_sla, u_X_sla, t_X_s,
        u_X_s, t_X_sra, u_X_sra, t_X_P, u_X_P, get_color_eq c0_sla, get_val_eq c0_sla,
        get_l_eq c0_sla, get_r_eq c0_sla, get_parent_eq c0_sla, get_color_eq c0_s, get_val_eq c0_s,
        get_l_eq c0_s, get_r_eq c0_s, get_parent_eq c0_s, get_color_eq c0_sra, get_val_eq c0_sra,
        get_l_eq c0_sra, get_r_eq c0_sra, get_parent_eq c0_sra, get_color_eq c0_P, get_val_eq c0_P,
        get_l_eq c0_P, get_r_eq c0_P, get_parent_eq c0_P, get_color_eq c1_sla, get_val_eq c1_sla,
        get_l_eq c1_sla, get_r_eq c1_sla, get_parent_eq c1_sla, get_color_eq c1_s, get_val_eq c1_s,
        get_l_eq c1_s, get_r_eq c1_s, get_parent_eq c1_s, get_color_eq c1_sra, get_val_eq c1_sra,
        get_l_eq c1_sra, get_r_eq c1_sra, get_parent_eq c1_sra, get_color_eq c1_P, get_val_eq c1_P,
        get_l_eq c1_P, get_r_eq c1_P, get_parent_eq c1_P, e1, sib_eq]

end ft

namespace ft
open color_type
variable {K V : Type}

theorem fill_ne_nil_cons (f : frame K V) (q : List (frame K V)) (t : tree K V) :
    fill (f :: q) t ≠ .nil := by
  cases f <;> exact fill_ne_nil (p := q) (by simp)

theorem Rep.top_ne_root {m : map K V} {f : frame K V} {q : List (frame K V)} {X : tree K V}
    (h : Rep m (fill (f :: q) X)) : X.top ≠ m._root := by
  cases X with
  | nil =>
    rw [h.root]
    cases hq : (fill (f :: q) (tree.nil : tree K V)) with
    | nil => exact absurd hq (fill_ne_nil_cons f q _)
    | node a c v l r => simp
  | node a c v l r => exact Rep.ne_root h (by simp)

/-- A path that expects a red subtree accepts a subtree of any colour. -/
theorem PathBal.red_any {p : List (frame K V)} {n : Nat} (hp : PathBal p color_type.red n)
    (c : color_type) : PathBal p c n := by
  cases hp with
  | root => exact PathBal.root
  | blackL hr hq => exact PathBal.blackL hr hq
  | blackR hl hq => exact PathBal.blackR hl hq

/-- A turn of `fixDoubleBlack` at a left child whose sibling is black: either the
deficiency is repaired, or (black parent, no red nephew) the parent is repaired next. -/
theorem fdb_black_step_L {m : map K V} {q : List (frame K V)} {P : Nat} {cP : color_type}
    {xP : K × V} {X S : tree K V} {n : Nat}
    (h : Rep m (fill ((.L P cP (some xP) S) :: q) X)) (hX : Bal X black n)
    (hp : PathBal ((.L P cP (some xP) S) :: q) black (n + 1)) (hS : Bal S black (n + 1)) (fuel : Nat) :
    (∃ m2 T2, map.fixDoubleBlack (fuel + 1) m X.top (some P) S.top = some m2 ∧ Rep m2 T2 ∧
      SameAux m m2 ∧ T2.elems = (fill ((.L P cP (some xP) S) :: q) X).elems ∧ ∃ c0 n0, Bal T2 c0 n0) ∨
    (∃ m2 s xs sl sr, cP = black ∧ map.fixDoubleBlack (fuel + 1) m X.top (some P) S.top =
        map.fixDoubleBlack fuel m2 (some P) (ptop q) (psib q) ∧
      Rep m2 (fill q (.node P black (some xP) X (.node s red (some xs) sl sr))) ∧ SameAux m m2 ∧
      (fill q (.node P black (some xP) X (.node s red (some xs) sl sr))).elems = (fill ((.L P cP (some xP) S) :: q) X).elems ∧
      Bal (.node P black (some xP) X (.node s red (some xs) sl sr)) black (n + 1) ∧ PathBal q black (n + 2)) := by
  have hroot : X.top ≠ m._root := Rep.top_ne_root h
  cases hS with
  | @black s xs sl sr c1 c2 _ hsl hsr =>
    by_cases h1 : sl.color = red
    · -- red left nephew
      cases hsl with
      | nil => simp [tree.color] at h1
      | sentinel => simp [tree.color] at h1
      | black => simp [tree.color] at h1
      | @red a xa A B _ hA hB =>
        cases hp with
        | @redL _ _ _ _ _ hS2 hq =>
          obtain ⟨m2, e2, r2, a2⟩ := fdb_red_left_L (q := q) h hroot fuel
          obtain ⟨c0, n0, hb⟩ := hq.fill (Bal.red (a := a) (x := xa) (Bal.black (a := P) (x := xP) hX hA) (Bal.black (a := s) (x := xs) hB hsr))
          exact Or.inl ⟨m2, _, e2, r2, a2, by simp [fill_elems], c0, n0, hb⟩
        | @blackL _ _ _ _ _ _ _ hS2 hq =>
          obtain ⟨m2, e2, r2, a2⟩ := fdb_red_left_L (q := q) h hroot fuel
          obtain ⟨c0, n0, hb⟩ := hq.fill (Bal.black (a := a) (x := xa) (Bal.black (a := P) (x := xP) hX hA) (Bal.black (a := s) (x := xs) hB hsr))
          exact Or.inl ⟨m2, _, e2, r2, a2, by simp [fill_elems], c0, n0, hb⟩
    · by_cases h2 : sr.color = red
      · cases hsr with
        | nil => simp [tree.color] at h2
        | sentinel => simp [tree.color] at h2
        | black => simp [tree.color] at h2
        | @red b xb C D _ hC hD =>
          cases hp with
          | @redL _ _ _ _ _ hS2 hq =>
            obtain ⟨m2, e2, r2, a2⟩ := fdb_red_right_L (q := q) h hroot h1 fuel
            obtain ⟨c0, n0, hb⟩ := hq.fill (Bal.red (a := s) (x := xs) (Bal.black (a := P) (x := xP) hX hsl) (Bal.black (a := b) (x := xb) hC hD))
            exact Or.inl ⟨m2, _, e2, r2, a2, by simp [fill_elems], c0, n0, hb⟩
          | @blackL _ _ _ _ _ _ _ hS2 hq =>
            obtain ⟨m2, e2, r2, a2⟩ := fdb_red_right_L (q := q) h hroot h1 fuel
            obtain ⟨c0, n0, hb⟩ := hq.fill (Bal.black (a := s) (x := xs) (Bal.black (a := P) (x := xP) hX hsl) (Bal.black (a := b) (x := xb) hC hD))
            exact Or.inl ⟨m2, _, e2, r2, a2, by simp [fill_elems], c0, n0, hb⟩
      · have hslb : Bal sl black n := by
          have hc := hsl.color_eq
          cases c1 with
          | red => exact absurd hc h1
          | black => exact hsl
        have hsrb : Bal sr black n := by
          have hc := hsr.color_eq
          cases c2 with
          | red => exact absurd hc h2
          | black => exact hsr
        cases hp with
        | @redL _ _ _ _ _ hS2 hq =>
          obtain ⟨m2, e2, r2, a2⟩ := fdb_black_red_parent_L (q := q) h hroot h1 h2 fuel
          obtain ⟨c0, n0, hb⟩ := (hq.red_any black).fill (Bal.black (a := P) (x := xP) hX (Bal.red (a := s) (x := xs) hslb hsrb))
          exact Or.inl ⟨m2, _, e2, r2, a2, by simp [fill_elems], c0, n0, hb⟩
        | @blackL _ _ _ _ _ _ _ hS2 hq =>
          obtain ⟨m2, e2, r2, a2⟩ := fdb_black_black_parent_L (q := q) h hroot h1 h2 fuel
          exact Or.inr ⟨m2, s, xs, sl, sr, rfl, e2, r2, a2, by simp [fill_elems], Bal.black (a := P) (x := xP) hX (Bal.red (a := s) (x := xs) hslb hsrb), hq⟩

/-- A turn of `fixDoubleBlack` at a right child whose sibling is black: either the
deficiency is repaired, or (black parent, no red nephew) the parent is repaired next. -/
theorem fdb_black_step_R {m : map K V} {q : List (frame K V)} {P : Nat} {cP : color_type}
    {xP : K × V} {X S : tree K V} {n : Nat}
    (h : Rep m (fill ((.R P cP (some xP) S) :: q) X)) (hX : Bal X black n)
    (hp : PathBal ((.R P cP (some xP) S) :: q) black (n + 1)) (hS : Bal S black (n + 1)) (fuel : Nat) :
    (∃ m2 T2, map.fixDoubleBlack (fuel + 1) m X.top (some P) S.top = some m2 ∧ Rep m2 T2 ∧
      SameAux m m2 ∧ T2.elems = (fill ((.R P cP (some xP) S) :: q) X).elems ∧ ∃ c0 n0, Bal T2 c0 n0) ∨
    (∃ m2 s xs sl sr, cP = black ∧ map.fixDoubleBlack (fuel + 1) m X.top (some P) S.top =
        map.fixDoubleBlack fuel m2 (some P) (ptop q) (psib q) ∧
      Rep m2 (fill q (.node P black (some xP) (.node s red (some xs) sl sr) X)) ∧ SameAux m m2 ∧
      (fill q (.node P black (some xP) (.node s red (some xs) sl sr) X)).elems = (fill ((.R P cP (some xP) S) :: q) X).elems ∧
      Bal (.node P black (some xP) (.node s red (some xs) sl sr) X) black (n + 1) ∧ PathBal q black (n + 2)) := by
  have hroot : X.top ≠ m._root := Rep.top_ne_root h
  cases hS with
  | @black s xs sl sr c1 c2 _ hsl hsr =>
    by_cases h1 : sl.color = red
    · -- red left nephew
      cases hsl with
      | nil => simp [tree.color] at h1
      | sentinel => simp [tree.color] at h1
      | black => simp [tree.color] at h1
      | @red a xa A B _ hA hB =>
        cases hp with
        | @redR _ _ _ _ _ hS2 hq =>
          obtain ⟨m2, e2, r2, a2⟩ := fdb_red_left_R (q := q) h hroot fuel
          obtain ⟨c0, n0, hb⟩ := hq.fill (Bal.red (a := s) (x := xs) (Bal.black (a := a) (x := xa) hA hB) (Bal.black (a := P) (x := xP) hsr hX))
          exact Or.inl ⟨m2, _, e2, r2, a2, by simp [fill_elems], c0, n0, hb⟩
        | @blackR _ _ _ _ _ _ _ hS2 hq =>
          obtain ⟨m2, e2, r2, a2⟩ := fdb_red_left_R (q := q) h hroot fuel
          obtain ⟨c0, n0, hb⟩ := hq.fill (Bal.black (a := s) (x := xs) (Bal.black (a := a) (x := xa) hA hB) (Bal.black (a := P) (x := xP) hsr hX))
          exact Or.inl ⟨m2, _, e2, r2, a2, by simp [fill_elems], c0, n0, hb⟩
    · by_cases h2 : sr.color = red
      · cases hsr with
        | nil => simp [tree.color] at h2
        | sentinel => simp [tree.color] at h2
        | black => simp [tree.color] at h2
        | @red b xb C D _ hC hD =>
          cases hp with
          | @redR _ _ _ _ _ hS2 hq =>
            obtain ⟨m2, e2, r2, a2⟩ := fdb_red_right_R (q := q) h hroot h1 fuel
            obtain ⟨c0, n0, hb⟩ := hq.fill (Bal.red (a := b) (x := xb) (Bal.black (a := s) (x := xs) hsl hC) (Bal.black (a := P) (x := xP) hD hX))
            exact Or.inl ⟨m2, _, e2, r2, a2, by simp [fill_elems], c0, n0, hb⟩
          | @blackR _ _ _ _ _ _ _ hS2 hq =>
            obtain ⟨m2, e2, r2, a2⟩ := fdb_red_right_R (q := q) h hroot h1 fuel
            obtain ⟨c0, n0, hb⟩ := hq.fill (Bal.black (a := b) (x := xb) (Bal.black (a := s) (x := xs) hsl hC) (Bal.black (a := P) (x := xP) hD hX))
            exact Or.inl ⟨m2, _, e2, r2, a2, by simp [fill_elems], c0, n0, hb⟩
      · have hslb : Bal sl black n := by
          have hc := hsl.color_eq
          cases c1 with
          | red => exact absurd hc h1
          | black => exact hsl
        have hsrb : Bal sr black n := by
          have hc := hsr.color_eq
          cases c2 with
          | red => exact absurd hc h2
          | black => exact hsr
        cases hp with
        | @redR _ _ _ _ _ hS2 hq =>
          obtain ⟨m2, e2, r2, a2⟩ := fdb_black_red_parent_R (q := q) h hroot h1 h2 fuel
          obtain ⟨c0, n0, hb⟩ := (hq.red_any black).fill (Bal.black (a := P) (x := xP) (Bal.red (a := s) (x := xs) hslb hsrb) hX)
          exact Or.inl ⟨m2, _, e2, r2, a2, by simp [fill_elems], c0, n0, hb⟩
        | @blackR _ _ _ _ _ _ _ hS2 hq =>
          obtain ⟨m2, e2, r2, a2⟩ := fdb_black_black_parent_R (q := q) h hroot h1 h2 fuel
          exact Or.inr ⟨m2, s, xs, sl, sr, rfl, e2, r2, a2, by simp [fill_elems], Bal.black (a := P) (x := xP) (Bal.red (a := s) (x := xs) hslb hsrb) hX, hq⟩

set_option maxHeartbeats 4000000 in
/-- Member `fixDoubleBlack` at a black subtree that is one black node short of what its place
expects: the red-black shape is restored and the in-order sequence is kept. -/
theorem fixDoubleBlack_spec : ∀ (fuel : Nat) (p : List (frame K V)) (m : map K V)
    (X : tree K V) (n : Nat),
    Rep m (fill p X) → Bal X black n → PathBal p black (n + 1) → 2 * p.length + 1 ≤ fuel →
    ∃ m2 T2, map.fixDoubleBlack fuel m X.top (ptop p) (psib p) = some m2 ∧ Rep m2 T2 ∧
      SameAux m m2 ∧ T2.elems = (fill p X).elems ∧ ∃ c0 n0, Bal T2 c0 n0 := by
  intro fuel
  induction fuel with
  | zero => intro p m X n _ _ _ hf; omega
  | succ fuel ih =>
  intro p m X n h hX hp hfuel
  cases p with
  | nil =>
    refine ⟨m, X, ?_, h, SameAux.rfl, rfl, _, _, hX⟩
    have := h.root
    simp only [fill_nil] at this
    simp [map.fixDoubleBlack, this]
  | cons f q =>
    cases f with
    | L P cP vP S =>
      have hroot : X.top ≠ m._root := Rep.top_ne_root h
      by_cases hSr : S.color = red
      · -- red sibling: recolour, rotate, and repair against the new black sibling
        cases hp with
        | @redL _ xP _ _ _ hS hq => exact absurd hS.color_eq (by rw [hSr]; simp)
        | @blackL _ xP _ _ _ c2 _ hS hq =>
          cases hS with
          | black => simp [tree.color] at hSr
          | @red s xs sl sr _ hsl hsr =>
            obtain ⟨fuel, rfl⟩ : ∃ f, fuel = f + 1 := ⟨fuel - 1, by simp at hfuel; omega⟩
            obtain ⟨m2, e2, r2, a2⟩ := fdb_red_sibling_L (q := q) h hroot (fuel + 1)
            simp only [ptop_cons, frame.addr_L, frame.addr_R, psib, tree.top_node]
            rw [e2]
            have r3 : Rep m2 (fill ((.L P red (some xP) sl) :: (.L s black (some xs) sr) :: q) X) := r2
            rcases fdb_black_step_L r3 hX (PathBal.redL hsl (PathBal.blackL hsr hq)) hsl fuel with
              ⟨m3, T3, e3, r4, a3, el, hb⟩ | ⟨m3, _, _, _, _, hc, _⟩
            · exact ⟨m3, T3, e3, r4, a2.trans a3, el.trans (by simp [fill_elems]), hb⟩
            · exact absurd hc (by simp)
      · have hSb : Bal S black (n + 1) := by
          cases hp with
          | @redL _ xP _ _ _ hS hq => exact hS
          | @blackL _ xP _ _ _ c2 _ hS hq =>
            have hc := hS.color_eq
            cases c2 with
            | red => exact absurd hc hSr
            | black => exact hS
        have hxP : ∃ xP, vP = some xP := by
          cases hp with
          | @redL _ xP _ _ _ hS hq => exact ⟨xP, rfl⟩
          | @blackL _ xP _ _ _ c2 _ hS hq => exact ⟨xP, rfl⟩
        obtain ⟨xP, rfl⟩ := hxP
        simp only [ptop_cons, frame.addr_L, frame.addr_R, psib]
        rcases fdb_black_step_L h hX hp hSb fuel with
          ⟨m3, T3, e3, r4, a3, el, hb⟩ | ⟨m3, s, xs, sl, sr, _, e3, r4, a3, el, hb, hq2⟩
        · exact ⟨m3, T3, e3, r4, a3, el, hb⟩
        · rw [e3]
          obtain ⟨m4, T4, e4, r5, a4, el4, hb4⟩ := ih q m3 _ (n + 1) r4 hb hq2
            (by simp at hfuel; omega)
          exact ⟨m4, T4, e4, r5, a3.trans a4, el4.trans el, hb4⟩
    | R P cP vP S =>
      have hroot : X.top ≠ m._root := Rep.top_ne_root h
      by_cases hSr : S.color = red
      · -- red sibling: recolour, rotate, and repair against the new black sibling
        cases hp with
        | @redR _ xP _ _ _ hS hq => exact absurd hS.color_eq (by rw [hSr]; simp)
        | @blackR _ xP _ _ _ c2 _ hS hq =>
          cases hS with
          | black => simp [tree.color] at hSr
          | @red s xs sl sr _ hsl hsr =>
            obtain ⟨fuel, rfl⟩ : ∃ f, fuel = f + 1 := ⟨fuel - 1, by simp at hfuel; omega⟩
            obtain ⟨m2, e2, r2, a2⟩ := fdb_red_sibling_R (q := q) h hroot (fuel + 1)
            simp only [ptop_cons, frame.addr_L, frame.addr_R, psib, tree.top_node]
            rw [e2]
            have r3 : Rep m2 (fill ((.R P red (some xP) sr) :: (.R s black (some xs) sl) :: q) X) := r2
            rcases fdb_black_step_R r3 hX (PathBal.redR hsr (PathBal.blackR hsl hq)) hsr fuel with
              ⟨m3, T3, e3, r4, a3, el, hb⟩ | ⟨m3, _, _, _, _, hc, _⟩
            · exact ⟨m3, T3, e3, r4, a2.trans a3, el.trans (by simp [fill_elems]), hb⟩
            · exact absurd hc (by simp)
      · have hSb : Bal S black (n + 1) := by
          cases hp with
          | @redR _ xP _ _ _ hS hq => exact hS
          | @blackR _ xP _ _ _ c2 _ hS hq =>
            have hc := hS.color_eq
            cases c2 with
            | red => exact absurd hc hSr
            | black => exact hS
        have hxP : ∃ xP, vP = some xP := by
          cases hp with
          | @redR _ xP _ _ _ hS hq => exact ⟨xP, rfl⟩
          | @blackR _ xP _ _ _ c2 _ hS hq => exact ⟨xP, rfl⟩
        obtain ⟨xP, rfl⟩ := hxP
        simp only [ptop_cons, frame.addr_L, frame.addr_R, psib]
        rcases fdb_black_step_R h hX hp hSb fuel with
          ⟨m3, T3, e3, r4, a3, el, hb⟩ | ⟨m3, s, xs, sl, sr, _, e3, r4, a3, el, hb, hq2⟩
        · exact ⟨m3, T3, e3, r4, a3, el, hb⟩
        · rw [e3]
          obtain ⟨m4, T4, e4, r5, a4, el4, hb4⟩ := ih q m3 _ (n + 1) r4 hb hq2
            (by simp at hfuel; omega)
          exact ⟨m4, T4, e4, r5, a3.trans a4, el4.trans el, hb4⟩

end ft

namespace ft
open color_type
variable {K V : Type}

/-! ### Paths made of two segments -/

theorem pbefore_append (p1 p2 : List (frame K V)) :
    pbefore (p1 ++ p2) = pbefore p2 ++ pbefore p1 := by
  induction p1 with
  | nil => simp [pbefore]
  | cons f p1 ih => cases f <;> simp [pbefore, ih]

theorem pafter_append (p1 p2 : List (frame K V)) :
    pafter (p1 ++ p2) = pafter p1 ++ pafter p2 := by
  induction p1 with
  | nil => simp [pafter]
  | cons f p1 ih => cases f <;> simp [pafter, ih]

theorem mem_paddrs_append {p1 p2 : List (frame K V)} {b : Nat} :
    b ∈ paddrs (p1 ++ p2) ↔ b ∈ paddrs p1 ∨ b ∈ paddrs p2 := by
  simp only [paddrs, pbefore_append, pafter_append, List.map_append, List.mem_append]
  tauto

theorem paddrs_append_perm (p1 p2 : List (frame K V)) :
    (paddrs (p1 ++ p2)).Perm (paddrs p1 ++ paddrs p2) := by
  rw [List.perm_iff_count]
  intro x
  simp only [paddrs, pbefore_append, pafter_append, List.map_append, List.count_append]
  omega

theorem nodup_paddrs_append {p1 p2 : List (frame K V)} :
    (paddrs (p1 ++ p2)).Nodup ↔
      (paddrs p1).Nodup ∧ (paddrs p2).Nodup ∧ List.Disjoint (paddrs p1) (paddrs p2) := by
  rw [(paddrs_append_perm p1 p2).nodup_iff, List.nodup_append]

theorem disjoint_paddrs_append {s : List Nat} {p1 p2 : List (frame K V)} :
    List.Disjoint s (paddrs (p1 ++ p2)) ↔
      List.Disjoint s (paddrs p1) ∧ List.Disjoint s (paddrs p2) := by
  simp only [List.Disjoint, mem_paddrs_append]
  constructor
  · intro h
    exact ⟨fun b hb hb2 => h hb (Or.inl hb2), fun b hb hb2 => h hb (Or.inr hb2)⟩
  · rintro ⟨h1, h2⟩ b hb (hb2 | hb2)
    · exact h1 hb hb2
    · exact h2 hb hb2

theorem ptop_append_cons (p1 : List (frame K V)) {f f2 : frame K V} (p2 p3 : List (frame K V))
    (h : f2.addr = f.addr) : ptop (p1 ++ f2 :: p3) = ptop (p1 ++ f :: p2) := by
  cases p1 <;> simp [ptop, h]

/-- The frames of an inner segment of a path only depend on their own cells and on the address
of the frame that follows the segment. -/
theorem ShapedPath.splice {mem mem2 : Nat → Option (node_type K V)} {p1 : List (frame K V)}
    {f2 f3 : frame K V} {p2 p3 : List (frame K V)} {h : ptr}
    (hs : ShapedPath mem (p1 ++ f2 :: p2) h) (hag : ∀ a ∈ paddrs p1, mem2 a = mem a)
    (haddr : f3.addr = f2.addr)
    (h2 : ∀ h2, ShapedPath mem (f2 :: p2) h2 → ShapedPath mem2 (f3 :: p3) h2) :
    ShapedPath mem2 (p1 ++ f3 :: p3) h := by
  induction p1 generalizing h with
  | nil => exact h2 h hs
  | cons f p1 ih =>
    cases f with
    | L a c v r =>
      obtain ⟨h1, h3, h4⟩ := hs
      refine ⟨?_, h3.agree ?_, ih h4 ?_⟩
      · have e := ptop_append_cons p1 p2 p3 haddr
        rw [hag a (by simp [mem_paddrs_L]), h1]
        exact congrArg (fun x => some (node_type.mk c v h r.top x)) e.symm
      · intro b hb; exact hag b (by simp [mem_paddrs_L, hb])
      · intro b hb; exact hag b (by simp [mem_paddrs_L, hb])
    | R a c v l =>
      obtain ⟨h1, h3, h4⟩ := hs
      refine ⟨?_, h3.agree ?_, ih h4 ?_⟩
      · have e := ptop_append_cons p1 p2 p3 haddr
        rw [hag a (by simp [mem_paddrs_R]), h1]
        exact congrArg (fun x => some (node_type.mk c v l.top h x)) e.symm
      · intro b hb; exact hag b (by simp [mem_paddrs_R, hb])
      · intro b hb; exact hag b (by simp [mem_paddrs_R, hb])

/-- A state whose memory holds a tree made of the same nodes represents it. -/
theorem Rep.of_perm {m m2 : map K V} {t t2 : tree K V} (h : Rep m t)
    (ha : t2.addrs.Perm t.addrs) (hb : m2.brk = m.brk) (hr : m2._root = t2.top)
    (hs : Shaped m2.mem none t2) : Rep m2 t2 :=
  ⟨hr, hs, ha.nodup_iff.2 h.nodup, by
    intro a h2; rw [hb]; exact h.bound a (ha.mem_iff.1 h2)⟩

end ft

namespace ft
open color_type
variable {K V : Type}

/-! ### Straight-line heap code -/

theorem store_step {m : map K V} {a : Nat} {n : node_type K V} (h : m.mem a = some n)
    (f : node_type K V → node_type K V) :
    ∃ m2, store m (some a) f = some m2 ∧ m2.mem a = some (f n) ∧
      (∀ b, b ≠ a → m2.mem b = m.mem b) ∧ m2.brk = m.brk ∧ m2._root = m._root ∧
      m2._sz = m._sz ∧ m2._cmp_k = m._cmp_k := by
  refine ⟨_, store_eq h f, by simp, ?_, rfl, rfl, rfl, rfl⟩
  intro b hb
  simp [Function.update_noteq hb]

theorem set_l_step {m : map K V} {a : Nat} {n : node_type K V} (h : m.mem a = some n)
    (x : ptr) :
    ∃ m2, set_l m (some a) x = some m2 ∧ m2.mem a = some { n with l := x } ∧
      (∀ b, b ≠ a → m2.mem b = m.mem b) ∧ m2.brk = m.brk ∧ m2._root = m._root ∧
      m2._sz = m._sz ∧ m2._cmp_k = m._cmp_k := store_step h _

theorem set_r_step {m : map K V} {a : Nat} {n : node_type K V} (h : m.mem a = some n)
    (x : ptr) :
    ∃ m2, set_r m (some a) x = some m2 ∧ m2.mem a = some { n with r := x } ∧
      (∀ b, b ≠ a → m2.mem b = m.mem b) ∧ m2.brk = m.brk ∧ m2._root = m._root ∧
      m2._sz = m._sz ∧ m2._cmp_k = m._cmp_k := store_step h _

theorem set_parent_step {m : map K V} {a : Nat} {n : node_type K V} (h : m.mem a = some n)
    (x : ptr) :
    ∃ m2, set_parent m (some a) x = some m2 ∧ m2.mem a = some { n with parent := x } ∧
      (∀ b, b ≠ a → m2.mem b = m.mem b) ∧ m2.brk = m.brk ∧ m2._root = m._root ∧
      m2._sz = m._sz ∧ m2._cmp_k = m._cmp_k := store_step h _

theorem set_color_step {m : map K V} {a : Nat} {n : node_type K V} (h : m.mem a = some n)
    (x : color_type) :
    ∃ m2, set_color m (some a) x = some m2 ∧ m2.mem a = some { n with color := x } ∧
      (∀ b, b ≠ a → m2.mem b = m.mem b) ∧ m2.brk = m.brk ∧ m2._root = m._root ∧
      m2._sz = m._sz ∧ m2._cmp_k = m._cmp_k := store_step h _

theorem ShapedPath.drop {mem : Nat → Option (node_type K V)} {p1 p2 : List (frame K V)}
    {h : ptr} (hs : ShapedPath mem (p1 ++ p2) h) : ∃ h2, ShapedPath mem p2 h2 := by
  induction p1 generalizing h with
  | nil => exact ⟨h, hs⟩
  | cons f p1 ih =>
    cases f with
    | L a c v r => exact ih hs.2.2
    | R a c v l => exact ih hs.2.2

/-- Variant of `ShapedPath.splice` for a segment that ends below a left child link, whose
target is read off the cell of the frame that follows the segment. -/
theorem ShapedPath.splice_L {mem mem2 : Nat → Option (node_type K V)} {p1 : List (frame K V)}
    {a : Nat} {c : color_type} {v : Option (K × V)} {r : tree K V} {f3 : frame K V}
    {p2 p3 : List (frame K V)} {h : ptr} {n : node_type K V}
    (hs : ShapedPath mem (p1 ++ .L a c v r :: p2) h) (hag : ∀ b ∈ paddrs p1, mem2 b = mem b)
    (hc : mem a = some n) (haddr : f3.addr = a)
    (h2 : ShapedPath mem2 (f3 :: p3) n.l) : ShapedPath mem2 (p1 ++ f3 :: p3) h := by
  refine ShapedPath.splice hs hag haddr ?_
  intro h3 hs3
  have e := hc.symm.trans hs3.1
  simp only [Option.some.injEq] at e
  have e2 : n.l = h3 := by rw [e]
  rw [← e2]
  exact h2

/-! ### Distinct nodes of a duplicate-free sequence of blocks -/

/-- Two members of different blocks of a duplicate-free concatenation differ. -/
theorem blocks_ne {bs : List (List Nat)} (h : bs.flatten.Nodup) {i j : Nat} (hij : i ≠ j)
    {x y : Nat} (hx : x ∈ bs.getD i []) (hy : y ∈ bs.getD j []) : x ≠ y := by
  induction bs generalizing i j with
  | nil => simp at hx
  | cons b bs ih =>
    rw [List.flatten_cons, List.nodup_append] at h
    obtain ⟨h1, h2, h3⟩ := h
    rintro rfl
    cases i with
    | zero =>
      cases j with
      | zero => exact hij rfl
      | succ j =>
        simp only [List.getD_cons_zero, List.getD_cons_succ] at hx hy
        by_cases hj : j < bs.length
        · rw [List.getD_eq_getElem _ _ hj] at hy
          exact h3 hx (List.mem_flatten.2 ⟨_, List.getElem_mem hj, hy⟩)
        · rw [List.getD_eq_default _ _ (by omega)] at hy
          simp at hy
    | succ i =>
      cases j with
      | zero =>
        simp only [List.getD_cons_zero, List.getD_cons_succ] at hx hy
        by_cases hi : i < bs.length
        · rw [List.getD_eq_getElem _ _ hi] at hx
          exact h3 hy (List.mem_flatten.2 ⟨_, List.getElem_mem hi, hx⟩)
        · rw [List.getD_eq_default _ _ (by omega)] at hx
          simp at hx
      | succ j =>
        simp only [List.getD_cons_succ] at hx hy
        exact ih h2 (fun e => hij (congrArg Nat.succ e)) hx hy rfl

/-- The nodes at two different positions of a duplicate-free sequence of blocks differ. -/
theorem blocks_ne_at {bs : List (List Nat)} (h : bs.flatten.Nodup) (i j : Nat)
    (hij : (i == j) = false) {x y : Nat} (hi : bs.getD i [] = [x]) (hj : bs.getD j [] = [y]) :
    x ≠ y :=
  blocks_ne h (by simpa using hij) (by rw [hi]; simp) (by rw [hj]; simp)

/-- A node at a position of a duplicate-free sequence of blocks is in no other block. -/
theorem blocks_not_mem_at {bs : List (List Nat)} (h : bs.flatten.Nodup) (i j : Nat)
    (hij : (i == j) = false) {x : Nat} {bj : List Nat} (hi : bs.getD i [] = [x])
    (hj : bs.getD j [] = bj) : x ∉ bj := by
  intro hx
  exact blocks_ne h (by simpa using hij) (x := x) (y := x) (by rw [hi]; simp)
    (by rw [hj]; exact hx) rfl

/-- A block keeps its cells when all writes go to nodes at other positions. -/
theorem region_agree {bs : List (List Nat)} (h : bs.flatten.Nodup) (is W : List Nat) (j : Nat)
    {bj : List Nat} (hW : is.map (fun i => bs.getD i []) = W.map (fun w => [w]))
    (hj : bs.getD j [] = bj) (hji : is.all (fun i => i != j) = true)
    {mem mem2 : Nat → Option (node_type K V)} (fr : ∀ b, b ∉ W → mem2 b = mem b) :
    ∀ b ∈ bj, mem2 b = mem b := by
  intro b hb
  refine fr b ?_
  intro hbW
  have key : ∀ (is W : List Nat), is.map (fun i => bs.getD i []) = W.map (fun w => [w]) →
      b ∈ W → ∃ i ∈ is, bs.getD i [] = [b] := by
    intro is
    induction is with
    | nil =>
      intro W hW hbW
      cases W with
      | nil => simp at hbW
      | cons w W => simp at hW
    | cons i is ih =>
      intro W hW hbW
      cases W with
      | nil => simp at hW
      | cons w W =>
        simp only [List.map_cons, List.cons.injEq] at hW
        rcases List.mem_cons.1 hbW with rfl | h2
        · exact ⟨i, List.mem_cons_self _ _, hW.1⟩
        · obtain ⟨i2, hi2, e⟩ := ih W hW.2 h2
          exact ⟨i2, List.mem_cons_of_mem _ hi2, e⟩
  obtain ⟨i, hi, e⟩ := key is W hW hbW
  have hne : i ≠ j := by
    have := List.all_eq_true.1 hji i hi
    simpa using this
  exact blocks_ne h hne (x := b) (y := b) (by rw [e]; simp) (by rw [hj]; exact hb) rfl

theorem paddrs_agree {p : List (frame K V)} {mem mem2 : Nat → Option (node_type K V)}
    (h1 : ∀ b ∈ (pbefore p).map Prod.fst, mem2 b = mem b)
    (h2 : ∀ b ∈ (pafter p).map Prod.fst, mem2 b = mem b) : ∀ b ∈ paddrs p, mem2 b = mem b := by
  intro b hb
  simp only [paddrs, List.map_append, List.mem_append] at hb
  rcases hb with hb | hb
  · exact h1 b hb
  · exact h2 b hb

/-! ### The relocation swap of `erase` -/

theorem perm_swap_adj_succ (q : List (frame K V)) {p t : Nat} {c1 c2 c3 c4 : color_type}
    {v1 v2 v3 v4 : Option (K × V)} {L TL TR : tree K V} :
    (fill q (.node t c1 v1 L (.node p c2 v2 TL TR))).addrs.Perm
      (fill q (.node p c3 v3 L (.node t c4 v4 TL TR))).addrs := by
  rw [List.perm_iff_count]
  intro a0
  simp only [fill_addrs, tree.addrs_node, List.count_append, List.count_cons]
  omega

theorem perm_swap_adj_pred (q : List (frame K V)) {p t : Nat} {c1 c2 c3 c4 : color_type}
    {v1 v2 v3 v4 : Option (K × V)} {R TL TR : tree K V} :
    (fill q (.node t c1 v1 (.node p c2 v2 TL TR) R)).addrs.Perm
      (fill q (.node p c3 v3 (.node t c4 v4 TL TR) R)).addrs := by
  rw [List.perm_iff_count]
  intro a0
  simp only [fill_addrs, tree.addrs_node, List.count_append, List.count_cons]
  omega

theorem perm_swap_far (r1 q : List (frame K V)) {p t : Nat} {c1 c2 c3 c4 : color_type}
    {v1 v2 v3 v4 : Option (K × V)} {L TL TR : tree K V} :
    (fill (r1 ++ .R t c1 v1 L :: q) (.node p c2 v2 TL TR)).addrs.Perm
      (fill (r1 ++ .R p c3 v3 L :: q) (.node t c4 v4 TL TR)).addrs := by
  rw [List.perm_iff_count]
  intro a0
  simp only [fill_addrs, pbefore_append, pafter_append, pbefore, pafter, tree.addrs_node,
    List.map_append, List.map_cons, List.map_nil, List.count_append, List.count_cons,
    List.count_nil]
  omega

theorem perm_swap_far1_succ (q : List (frame K V)) {k : frame K V} {p t : Nat}
    {c1 c2 c3 c4 : color_type} {v1 v2 v3 v4 : Option (K × V)} {L TL TR : tree K V} :
    (fill (k :: .R t c1 v1 L :: q) (.node p c2 v2 TL TR)).addrs.Perm
      (fill (k :: .R p c3 v3 L :: q) (.node t c4 v4 TL TR)).addrs :=
  perm_swap_far [k] q

theorem perm_swap_far2_succ (q : List (frame K V)) {f k : frame K V} {rm : List (frame K V)}
    {p t : Nat} {c1 c2 c3 c4 : color_type} {v1 v2 v3 v4 : Option (K × V)}
    {L TL TR : tree K V} :
    (fill (f :: (rm ++ k :: .R t c1 v1 L :: q)) (.node p c2 v2 TL TR)).addrs.Perm
      (fill (f :: (rm ++ k :: .R p c3 v3 L :: q)) (.node t c4 v4 TL TR)).addrs := by
  have h : (fill ((f :: (rm ++ [k])) ++ .R t c1 v1 L :: q) (.node p c2 v2 TL TR)).addrs.Perm
      (fill ((f :: (rm ++ [k])) ++ .R p c3 v3 L :: q) (.node t c4 v4 TL TR)).addrs :=
    perm_swap_far (f :: (rm ++ [k])) q
  simpa using h

/-- The cells after `_swap_nodes`, case `adj_succ_root_nil`. -/
theorem swap_adj_succ_root_nil_cells {m : map K V} {p l t : Nat}
    {cP cl ct : color_type} {vP vl vt : Option (K × V)} {q1 q2 : ptr}
    (c_p : m.mem p = some { color := cP, val := vP, l := some l, r := some t, parent := none })
    (c_l : m.mem l = some { color := cl, val := vl, l := q1, r := q2, parent := some p })
    (c_t : m.mem t = some { color := ct, val := vt, l := none, r := none, parent := some p })
    (d_l_t : l ≠ t)
    (d_t_l : t ≠ l)
    (d_p_l : p ≠ l)
    (d_t_p : t ≠ p)
    (d_p_t : p ≠ t)
    (d_l_p : l ≠ p)
    (hr0 : m._root = some p) :
    ∃ m2, map._swap_nodes m (some p) (some t) = some m2 ∧
      m2.mem p = some { color := ct, val := vP, l := none, r := none, parent := some t } ∧
      m2.mem l = some { color := cl, val := vl, l := q1, r := q2, parent := some t } ∧
      m2.mem t = some { color := cP, val := vt, l := some l, r := some p, parent := none } ∧
      (∀ b, b ∉ [l, p, t] → m2.mem b = m.mem b) ∧
      m2._root = some t ∧
      m2.brk = m.brk ∧
      m2._sz = m._sz ∧
      m2._cmp_k = m._cmp_k :=
  Exists.elim (set_parent_step (m := m) c_l (some t)) fun m1 S1 =>
  have w1 : m1.mem l = some { color := cl, val := vl, l := q1, r := q2, parent := some t } := S1.2.1
  Exists.elim (set_l_step (m := { m1 with _root := some t }) ((S1.2.2.1 p d_p_l).trans c_p) none)
    fun m2 S2 =>
  have w2 : m2.mem p = some { color := cP, val := vP, l := none, r := some t, parent := none } :=
    S2.2.1
  have k2_t := (S2.2.2.1 t d_t_p).trans ((S1.2.2.1 t d_t_l).trans c_t)
  Exists.elim (set_r_step (m := m2) w2 none) fun m3 S3 =>
  have w3 : m3.mem p = some { color := cP, val := vP, l := none, r := none, parent := none } :=
    S3.2.1
  Exists.elim (set_parent_step (m := m3) w3 (some t)) fun m4 S4 =>
  have w4 : m4.mem p = some { color := cP, val := vP, l := none, r := none, parent := some t } :=
    S4.2.1
  have k4_t := (S4.2.2.1 t d_t_p).trans ((S3.2.2.1 t d_t_p).trans k2_t)
  Exists.elim (set_l_step (m := m4) k4_t (some l)) fun m5 S5 =>
  have w5 : m5.mem t = some { color := ct, val := vt, l := some l, r := none, parent := some p } :=
    S5.2.1
  have xr5 : m5._root = some t := S5.2.2.2.2.1.trans (S4.2.2.2.2.1.trans (S3.2.2.2.2.1.trans
    (S2.2.2.2.2.1 : m2._root = some t)))
  Exists.elim (set_r_step (m := m5) w5 (some p)) fun m6 S6 =>
  have w6 : m6.mem t = some { color := ct, val := vt, l := some l, r := some p, parent := some p }
    := S6.2.1
  Exists.elim (set_parent_step (m := m6) w6 none) fun m7 S7 =>
  have w7 : m7.mem t = some { color := ct, val := vt, l := some l, r := some p, parent := none } :=
    S7.2.1
  have k6_p := (S6.2.2.1 p d_p_t).trans ((S5.2.2.1 p d_p_t).trans w4)
  Exists.elim (set_color_step (m := m7) ((S7.2.2.1 p d_p_t).trans k6_p) ct) fun m8 S8 =>
  have w8 : m8.mem p = some { color := ct, val := vP, l := none, r := none, parent := some t } :=
    S8.2.1
  have xr8 : m8._root = some t := S8.2.2.2.2.1.trans (S7.2.2.2.2.1.trans (S6.2.2.2.2.1.trans xr5))
  Exists.elim (set_color_step (m := m8) ((S8.2.2.1 t d_t_p).trans w7) cP) fun m9 S9 =>
  have w9 : m9.mem t = some { color := cP, val := vt, l := some l, r := some p, parent := none } :=
    S9.2.1
  have k3_l := (S3.2.2.1 l d_l_p).trans ((S2.2.2.1 l d_l_p).trans w1)
  have k5_l := (S5.2.2.1 l d_l_t).trans ((S4.2.2.1 l d_l_p).trans k3_l)
  have k7_l := (S7.2.2.1 l d_l_t).trans ((S6.2.2.1 l d_l_t).trans k5_l)
  have k9_l := (S9.2.2.1 l d_l_t).trans ((S8.2.2.1 l d_l_p).trans k7_l)
  have hop : map._swap_nodes m (some p) (some t) = some m9 := by
    simp only [map._swap_nodes, map._swap_set_parent, map._swap_set_child,
      (get_l_eq (m := m) c_p : get_l m (some p) = some (some l)), d_l_t, d_t_l, S1.1,
      (get_r_eq (m := m1) ((S1.2.2.1 p d_p_l).trans c_p) : get_r m1 (some p) = some (some t)),
      (get_parent_eq (m := m1) ((S1.2.2.1 p d_p_l).trans c_p) : get_parent m1 (some p) = some none),
      ((S1.2.2.2.2.1.trans hr0) : m1._root = some p),
      (get_l_eq (m := { m1 with _root := some t }) ((S1.2.2.1 t d_t_l).trans c_t) : get_l
        { m1 with _root := some t } (some t) = some none),
      (get_r_eq (m := { m1 with _root := some t }) ((S1.2.2.1 t d_t_l).trans c_t) : get_r
        { m1 with _root := some t } (some t) = some none),
      (get_parent_eq (m := { m1 with _root := some t }) ((S1.2.2.1 t d_t_l).trans c_t) : get_parent
        { m1 with _root := some t } (some t) = some (some p)),
      (get_l_eq (m := { m1 with _root := some t }) ((S1.2.2.1 p d_p_l).trans c_p) : get_l
        { m1 with _root := some t } (some p) = some (some l)),
      (get_r_eq (m := { m1 with _root := some t }) ((S1.2.2.1 p d_p_l).trans c_p) : get_r
        { m1 with _root := some t } (some p) = some (some t)),
      (get_parent_eq (m := { m1 with _root := some t }) ((S1.2.2.1 p d_p_l).trans c_p) : get_parent
        { m1 with _root := some t } (some p) = some none),
      (get_color_eq (m := { m1 with _root := some t }) ((S1.2.2.1 p d_p_l).trans c_p) : get_color
        { m1 with _root := some t } (some p) = some cP),
      (get_l_eq (m := { m1 with _root := some t }) ((S1.2.2.1 t d_t_l).trans c_t) : get_l
        { m1 with _root := some t } (some t) = some none),
      S2.1, (get_r_eq (m := m2) k2_t : get_r m2 (some t) = some none), S3.1,
      (get_parent_eq (m := m3) ((S3.2.2.1 t d_t_p).trans k2_t) : get_parent m3 (some t) = some
        (some p)),
      S4.1, S5.1, S6.1, S7.1, (get_color_eq (m := m7) w7 : get_color m7 (some t) = some ct),
      S8.1, S9.1, hr0, bind_eq_ub, pure_eq_some, ub_bind_some, ne_eq, Option.some.injEq,
      not_false_eq_true, not_true_eq_false, and_self, and_true, true_and, and_false, false_and,
      if_true, if_false, ite_true, ite_false, reduceCtorEq, reduceIte, ite_not, not_not,
      Bool.not_eq_true, decide_eq_true_eq, decide_eq_false_iff_not, decide_True, decide_False,
      Bool.false_eq_true, eq_self_iff_true, Option.isSome_some, Option.isSome_none]
  have h_l : ∀ b, b ∉ [l, p, t] → b ≠ l := fun b hb e => hb (e ▸ List.Mem.head _)
  have h_p : ∀ b, b ∉ [l, p, t] → b ≠ p := fun b hb e => hb (e ▸ List.Mem.tail _ (List.Mem.head _))
  have h_t : ∀ b, b ∉ [l, p, t] → b ≠ t := fun b hb e => hb (e ▸ List.Mem.tail _ (List.Mem.tail _
    (List.Mem.head _)))
  ⟨m9, hop, ((S9.2.2.1 p d_p_t).trans w8), k9_l, w9, (fun b hb => ((S9.2.2.1 b (h_t b hb)).trans
    ((S8.2.2.1 b (h_p b hb)).trans ((S7.2.2.1 b (h_t b hb)).trans ((S6.2.2.1 b (h_t b hb)).trans
    ((S5.2.2.1 b (h_t b hb)).trans ((S4.2.2.1 b (h_p b hb)).trans ((S3.2.2.1 b (h_p b hb)).trans
    ((S2.2.2.1 b (h_p b hb)).trans (S1.2.2.1 b (h_l b hb))))))))))), (S9.2.2.2.2.1.trans xr8),
    (S9.2.2.2.1.trans (S8.2.2.2.1.trans (S7.2.2.2.1.trans (S6.2.2.2.1.trans (S5.2.2.2.1.trans
    (S4.2.2.2.1.trans (S3.2.2.2.1.trans (S2.2.2.2.1.trans S1.2.2.2.1)))))))), (S9.2.2.2.2.2.1.trans
    (S8.2.2.2.2.2.1.trans (S7.2.2.2.2.2.1.trans (S6.2.2.2.2.2.1.trans (S5.2.2.2.2.2.1.trans
    (S4.2.2.2.2.2.1.trans (S3.2.2.2.2.2.1.trans (S2.2.2.2.2.2.1.trans S1.2.2.2.2.2.1)))))))),
    (S9.2.2.2.2.2.2.trans (S8.2.2.2.2.2.2.trans (S7.2.2.2.2.2.2.trans (S6.2.2.2.2.2.2.trans
    (S5.2.2.2.2.2.2.trans (S4.2.2.2.2.2.2.trans (S3.2.2.2.2.2.2.trans (S2.2.2.2.2.2.2.trans
    S1.2.2.2.2.2.2))))))))⟩

/-- Member `_swap_nodes` of a node and its right child, which has no left child. -/
theorem swap_adj_succ_root_nil
    {m : map K V} {p l t : Nat} {cP cl ct : color_type} {vP vl vt : Option (K × V)}
    {ll lr : tree K V}
    (h : Rep m (fill ([])
      (.node p cP vP (.node l cl vl ll lr) (.node t ct vt .nil .nil)))) :
    ∃ m2, map._swap_nodes m (some p) (some t) = some m2 ∧
      Rep m2 (fill ([])
        (.node t cP vt (.node l cl vl ll lr) (.node p ct vP .nil .nil))) ∧ SameAux m m2 :=
  have hs := shaped_fill.1 h.shaped
  have c_p : m.mem p = some { color := cP, val := vP, l := some l, r := some t, parent := none } :=
    hs.2.1
  have c_l : m.mem l = some { color := cl, val := vl, l := ll.top, r := lr.top, parent := some p }
    := hs.2.2.1.1
  have c_t : m.mem t = some { color := ct, val := vt, l := none, r := none, parent := some p } :=
    hs.2.2.2.1
  have hB : (List.flatten [ll.addrs, [l], lr.addrs, [p], [t]]).Nodup := by
    have e : (fill ([]) (.node p cP vP (.node l cl vl ll lr) (.node t ct vt .nil .nil))).addrs =
        List.flatten [ll.addrs, [l], lr.addrs, [p], [t]] := by
      rw [fill_addrs]
      simp [pbefore, pafter, pbefore_append, pafter_append, tree.addrs]
    exact e ▸ h.nodup
  have hr0 : m._root = some p :=
    h.root.trans (by simp only [fill_L, fill_R, fill_append, fill_nil, tree.top_node])
  Exists.elim (swap_adj_succ_root_nil_cells c_p c_l c_t (blocks_ne_at hB 1 4 rfl rfl rfl)
    (blocks_ne_at hB 4 1 rfl rfl rfl) (blocks_ne_at hB 3 1 rfl rfl rfl) (blocks_ne_at hB 4 3 rfl
    rfl rfl) (blocks_ne_at hB 3 4 rfl rfl rfl) (blocks_ne_at hB 1 3 rfl rfl rfl) hr0) fun m2 H =>
  have fr := H.2.2.2.2.1
  have a_ll : ∀ b ∈ ll.addrs, m2.mem b = m.mem b :=
    region_agree hB [1, 3, 4] [l, p, t] 0 rfl rfl rfl fr
  have a_lr : ∀ b ∈ lr.addrs, m2.mem b = m.mem b :=
    region_agree hB [1, 3, 4] [l, p, t] 2 rfl rfl rfl fr
  have hroot : m2._root = (fill ([]) (.node t cP vt (.node l cl vl ll lr) (.node p ct vP .nil
    .nil))).top := by
    rw [H.2.2.2.2.2.1]
    simp only [fill_L, fill_R, fill_append, fill_nil, tree.top_node]
  have hpath : ShapedPath m2.mem ([]) (some t) :=
    trivial
  have htree : Shaped m2.mem none (.node t cP vt (.node l cl vl ll lr) (.node p ct vP .nil .nil)) :=
    ⟨H.2.2.2.1, ⟨H.2.2.1, Shaped.agree hs.2.2.1.2.1 a_ll, Shaped.agree hs.2.2.1.2.2 a_lr⟩, ⟨H.2.1,
      trivial, trivial⟩⟩
  ⟨m2, H.1, h.of_perm (perm_swap_adj_succ _) H.2.2.2.2.2.2.1 hroot (shaped_fill.2 ⟨hpath, htree⟩),
    ⟨H.2.2.2.2.2.2.1, H.2.2.2.2.2.2.2.1, H.2.2.2.2.2.2.2.2⟩⟩

/-- The cells after `_swap_nodes`, case `adj_pred_root_nil`. -/
theorem swap_adj_pred_root_nil_cells {m : map K V} {p t l : Nat}
    {cP ct cl : color_type} {vP vt vl : Option (K × V)} {q1 q2 : ptr}
    (c_p : m.mem p = some { color := cP, val := vP, l := some t, r := some l, parent := none })
    (c_t : m.mem t = some { color := ct, val := vt, l := none, r := none, parent := some p })
    (c_l : m.mem l = some { color := cl, val := vl, l := q1, r := q2, parent := some p })
    (d_l_t : l ≠ t)
    (d_t_l : t ≠ l)
    (d_p_l : p ≠ l)
    (d_t_p : t ≠ p)
    (d_p_t : p ≠ t)
    (d_l_p : l ≠ p)
    (hr0 : m._root = some p) :
    ∃ m2, map._swap_nodes m (some p) (some t) = some m2 ∧
      m2.mem p = some { color := ct, val := vP, l := none, r := none, parent := some t } ∧
      m2.mem t = some { color := cP, val := vt, l := some p, r := some l, parent := none } ∧
      m2.mem l = some { color := cl, val := vl, l := q1, r := q2, parent := some t } ∧
      (∀ b, b ∉ [l, p, t] → m2.mem b = m.mem b) ∧
      m2._root = some t ∧
      m2.brk = m.brk ∧
      m2._sz = m._sz ∧
      m2._cmp_k = m._cmp_k :=
  Exists.elim (set_parent_step (m := m) c_l (some t)) fun m1 S1 =>
  have w1 : m1.mem l = some { color := cl, val := vl, l := q1, r := q2, parent := some t } := S1.2.1
  Exists.elim (set_l_step (m := { m1 with _root := some t }) ((S1.2.2.1 p d_p_l).trans c_p) none)
    fun m2 S2 =>
  have w2 : m2.mem p = some { color := cP, val := vP, l := none, r := some l, parent := none } :=
    S2.2.1
  have k2_t := (S2.2.2.1 t d_t_p).trans ((S1.2.2.1 t d_t_l).trans c_t)
  Exists.elim (set_r_step (m := m2) w2 none) fun m3 S3 =>
  have w3 : m3.mem p = some { color := cP, val := vP, l := none, r := none, parent := none } :=
    S3.2.1
  Exists.elim (set_parent_step (m := m3) w3 (some t)) fun m4 S4 =>
  have w4 : m4.mem p = some { color := cP, val := vP, l := none, r := none, parent := some t } :=
    S4.2.1
  have k4_t := (S4.2.2.1 t d_t_p).trans ((S3.2.2.1 t d_t_p).trans k2_t)
  Exists.elim (set_l_step (m := m4) k4_t (some p)) fun m5 S5 =>
  have w5 : m5.mem t = some { color := ct, val := vt, l := some p, r := none, parent := some p } :=
    S5.2.1
  have xr5 : m5._root = some t := S5.2.2.2.2.1.trans (S4.2.2.2.2.1.trans (S3.2.2.2.2.1.trans
    (S2.2.2.2.2.1 : m2._root = some t)))
  Exists.elim (set_r_step (m := m5) w5 (some l)) fun m6 S6 =>
  have w6 : m6.mem t = some { color := ct, val := vt, l := some p, r := some l, parent := some p }
    := S6.2.1
  Exists.elim (set_parent_step (m := m6) w6 none) fun m7 S7 =>
  have w7 : m7.mem t = some { color := ct, val := vt, l := some p, r := some l, parent := none } :=
    S7.2.1
  have k6_p := (S6.2.2.1 p d_p_t).trans ((S5.2.2.1 p d_p_t).trans w4)
  Exists.elim (set_color_step (m := m7) ((S7.2.2.1 p d_p_t).trans k6_p) ct) fun m8 S8 =>
  have w8 : m8.mem p = some { color := ct, val := vP, l := none, r := none, parent := some t } :=
    S8.2.1
  have xr8 : m8._root = some t := S8.2.2.2.2.1.trans (S7.2.2.2.2.1.trans (S6.2.2.2.2.1.trans xr5))
  Exists.elim (set_color_step (m := m8) ((S8.2.2.1 t d_t_p).trans w7) cP) fun m9 S9 =>
  have w9 : m9.mem t = some { color := cP, val := vt, l := some p, r := some l, parent := none } :=
    S9.2.1
  have k3_l := (S3.2.2.1 l d_l_p).trans ((S2.2.2.1 l d_l_p).trans w1)
  have k5_l := (S5.2.2.1 l d_l_t).trans ((S4.2.2.1 l d_l_p).trans k3_l)
  have k7_l := (S7.2.2.1 l d_l_t).trans ((S6.2.2.1 l d_l_t).trans k5_l)
  have k9_l := (S9.2.2.1 l d_l_t).trans ((S8.2.2.1 l d_l_p).trans k7_l)
  have hop : map._swap_nodes m (some p) (some t) = some m9 := by
    simp only [map._swap_nodes, map._swap_set_parent, map._swap_set_child,
      (get_l_eq (m := m) c_p : get_l m (some p) = some (some t)),
      (get_r_eq (m := m) c_p : get_r m (some p) = some (some l)), d_l_t, d_t_l, S1.1,
      (get_parent_eq (m := m1) ((S1.2.2.1 p d_p_l).trans c_p) : get_parent m1 (some p) = some none),
      ((S1.2.2.2.2.1.trans hr0) : m1._root = some p),
      (get_l_eq (m := { m1 with _root := some t }) ((S1.2.2.1 t d_t_l).trans c_t) : get_l
        { m1 with _root := some t } (some t) = some none),
      (get_r_eq (m := { m1 with _root := some t }) ((S1.2.2.1 t d_t_l).trans c_t) : get_r
        { m1 with _root := some t } (some t) = some none),
      (get_parent_eq (m := { m1 with _root := some t }) ((S1.2.2.1 t d_t_l).trans c_t) : get_parent
        { m1 with _root := some t } (some t) = some (some p)),
      (get_l_eq (m := { m1 with _root := some t }) ((S1.2.2.1 p d_p_l).trans c_p) : get_l
        { m1 with _root := some t } (some p) = some (some t)),
      (get_r_eq (m := { m1 with _root := some t }) ((S1.2.2.1 p d_p_l).trans c_p) : get_r
        { m1 with _root := some t } (some p) = some (some l)),
      (get_parent_eq (m := { m1 with _root := some t }) ((S1.2.2.1 p d_p_l).trans c_p) : get_parent
        { m1 with _root := some t } (some p) = some none),
      (get_color_eq (m := { m1 with _root := some t }) ((S1.2.2.1 p d_p_l).trans c_p) : get_color
        { m1 with _root := some t } (some p) = some cP),
      (get_l_eq (m := { m1 with _root := some t }) ((S1.2.2.1 t d_t_l).trans c_t) : get_l
        { m1 with _root := some t } (some t) = some none),
      S2.1, (get_r_eq (m := m2) k2_t : get_r m2 (some t) = some none), S3.1,
      (get_parent_eq (m := m3) ((S3.2.2.1 t d_t_p).trans k2_t) : get_parent m3 (some t) = some
        (some p)),
      S4.1, S5.1, S6.1, S7.1, (get_color_eq (m := m7) w7 : get_color m7 (some t) = some ct),
      S8.1, S9.1, hr0, bind_eq_ub, pure_eq_some, ub_bind_some, ne_eq, Option.some.injEq,
      not_false_eq_true, not_true_eq_false, and_self, and_true, true_and, and_false, false_and,
      if_true, if_false, ite_true, ite_false, reduceCtorEq, reduceIte, ite_not, not_not,
      Bool.not_eq_true, decide_eq_true_eq, decide_eq_false_iff_not, decide_True, decide_False,
      Bool.false_eq_true, eq_self_iff_true, Option.isSome_some, Option.isSome_none]
  have h_l : ∀ b, b ∉ [l, p, t] → b ≠ l := fun b hb e => hb (e ▸ List.Mem.head _)
  have h_p : ∀ b, b ∉ [l, p, t] → b ≠ p := fun b hb e => hb (e ▸ List.Mem.tail _ (List.Mem.head _))
  have h_t : ∀ b, b ∉ [l, p, t] → b ≠ t := fun b hb e => hb (e ▸ List.Mem.tail _ (List.Mem.tail _
    (List.Mem.head _)))
  ⟨m9, hop, ((S9.2.2.1 p d_p_t).trans w8), w9, k9_l, (fun b hb => ((S9.2.2.1 b (h_t b hb)).trans
    ((S8.2.2.1 b (h_p b hb)).trans ((S7.2.2.1 b (h_t b hb)).trans ((S6.2.2.1 b (h_t b hb)).trans
    ((S5.2.2.1 b (h_t b hb)).trans ((S4.2.2.1 b (h_p b hb)).trans ((S3.2.2.1 b (h_p b hb)).trans
    ((S2.2.2.1 b (h_p b hb)).trans (S1.2.2.1 b (h_l b hb))))))))))), (S9.2.2.2.2.1.trans xr8),
    (S9.2.2.2.1.trans (S8.2.2.2.1.trans (S7.2.2.2.1.trans (S6.2.2.2.1.trans (S5.2.2.2.1.trans
    (S4.2.2.2.1.trans (S3.2.2.2.1.trans (S2.2.2.2.1.trans S1.2.2.2.1)))))))), (S9.2.2.2.2.2.1.trans
    (S8.2.2.2.2.2.1.trans (S7.2.2.2.2.2.1.trans (S6.2.2.2.2.2.1.trans (S5.2.2.2.2.2.1.trans
    (S4.2.2.2.2.2.1.trans (S3.2.2.2.2.2.1.trans (S2.2.2.2.2.2.1.trans S1.2.2.2.2.2.1)))))))),
    (S9.2.2.2.2.2.2.trans (S8.2.2.2.2.2.2.trans (S7.2.2.2.2.2.2.trans (S6.2.2.2.2.2.2.trans
    (S5.2.2.2.2.2.2.trans (S4.2.2.2.2.2.2.trans (S3.2.2.2.2.2.2.trans (S2.2.2.2.2.2.2.trans
    S1.2.2.2.2.2.2))))))))⟩

/-- Member `_swap_nodes` of a node and its left child, which has no right child. -/
theorem swap_adj_pred_root_nil
    {m : map K V} {p t l : Nat} {cP ct cl : color_type} {vP vt vl : Option (K × V)}
    {ll lr : tree K V}
    (h : Rep m (fill ([])
      (.node p cP vP (.node t ct vt .nil .nil) (.node l cl vl ll lr)))) :
    ∃ m2, map._swap_nodes m (some p) (some t) = some m2 ∧
      Rep m2 (fill ([])
        (.node t cP vt (.node p ct vP .nil .nil) (.node l cl vl ll lr))) ∧ SameAux m m2 :=
  have hs := shaped_fill.1 h.shaped
  have c_p : m.mem p = some { color := cP, val := vP, l := some t, r := some l, parent := none } :=
    hs.2.1
  have c_t : m.mem t = some { color := ct, val := vt, l := none, r := none, parent := some p } :=
    hs.2.2.1.1
  have c_l : m.mem l = some { color := cl, val := vl, l := ll.top, r := lr.top, parent := some p }
    := hs.2.2.2.1
  have hB : (List.flatten [[t], [p], ll.addrs, [l], lr.addrs]).Nodup := by
    have e : (fill ([]) (.node p cP vP (.node t ct vt .nil .nil) (.node l cl vl ll lr))).addrs =
        List.flatten [[t], [p], ll.addrs, [l], lr.addrs] := by
      rw [fill_addrs]
      simp [pbefore, pafter, pbefore_append, pafter_append, tree.addrs]
    exact e ▸ h.nodup
  have hr0 : m._root = some p :=
    h.root.trans (by simp only [fill_L, fill_R, fill_append, fill_nil, tree.top_node])
  Exists.elim (swap_adj_pred_root_nil_cells c_p c_t c_l (blocks_ne_at hB 3 0 rfl rfl rfl)
    (blocks_ne_at hB 0 3 rfl rfl rfl) (blocks_ne_at hB 1 3 rfl rfl rfl) (blocks_ne_at hB 0 1 rfl
    rfl rfl) (blocks_ne_at hB 1 0 rfl rfl rfl) (blocks_ne_at hB 3 1 rfl rfl rfl) hr0) fun m2 H =>
  have fr := H.2.2.2.2.1
  have a_ll : ∀ b ∈ ll.addrs, m2.mem b = m.mem b :=
    region_agree hB [3, 1, 0] [l, p, t] 2 rfl rfl rfl fr
  have a_lr : ∀ b ∈ lr.addrs, m2.mem b = m.mem b :=
    region_agree hB [3, 1, 0] [l, p, t] 4 rfl rfl rfl fr
  have hroot : m2._root = (fill ([]) (.node t cP vt (.node p ct vP .nil .nil) (.node l cl vl ll
    lr))).top := by
    rw [H.2.2.2.2.2.1]
    simp only [fill_L, fill_R, fill_append, fill_nil, tree.top_node]
  have hpath : ShapedPath m2.mem ([]) (some t) :=
    trivial
  have htree : Shaped m2.mem none (.node t cP vt (.node p ct vP .nil .nil) (.node l cl vl ll lr)) :=
    ⟨H.2.2.1, ⟨H.2.1, trivial, trivial⟩, ⟨H.2.2.2.1, Shaped.agree hs.2.2.2.2.1 a_ll, Shaped.agree
      hs.2.2.2.2.2 a_lr⟩⟩
  ⟨m2, H.1, h.of_perm (perm_swap_adj_pred _) H.2.2.2.2.2.2.1 hroot (shaped_fill.2 ⟨hpath, htree⟩),
    ⟨H.2.2.2.2.2.2.1, H.2.2.2.2.2.2.2.1, H.2.2.2.2.2.2.2.2⟩⟩

/-- The cells after `_swap_nodes`, case `far1_succ_root_nil`. -/
theorem swap_far1_succ_root_nil_cells {m : map K V} {t k p l : Nat}
    {ct ck cP cl : color_type} {vt vk vP vl : Option (K × V)} {q1 q2 q3 : ptr}
    (c_t : m.mem t = some { color := ct, val := vt, l := none, r := none, parent := some k })
    (c_k : m.mem k = some { color := ck, val := vk, l := some t, r := q1, parent := some p })
    (c_p : m.mem p = some { color := cP, val := vP, l := some l, r := some k, parent := none })
    (c_l : m.mem l = some { color := cl, val := vl, l := q2, r := q3, parent := some p })
    (d_l_t : l ≠ t)
    (d_t_l : t ≠ l)
    (d_p_l : p ≠ l)
    (d_k_t : k ≠ t)
    (d_t_k : t ≠ k)
    (d_k_l : k ≠ l)
    (d_p_k : p ≠ k)
    (d_k_p : k ≠ p)
    (d_t_p : t ≠ p)
    (d_p_t : p ≠ t)
    (d_l_k : l ≠ k)
    (d_l_p : l ≠ p)
    (hr0 : m._root = some p) :
    ∃ m2, map._swap_nodes m (some p) (some t) = some m2 ∧
      m2.mem t = some { color := cP, val := vt, l := some l, r := some k, parent := none } ∧
      m2.mem k = some { color := ck, val := vk, l := some p, r := q1, parent := some t } ∧
      m2.mem p = some { color := ct, val := vP, l := none, r := none, parent := some k } ∧
      m2.mem l = some { color := cl, val := vl, l := q2, r := q3, parent := some t } ∧
      (∀ b, b ∉ [l, k, p, t] → m2.mem b = m.mem b) ∧
      m2._root = some t ∧
      m2.brk = m.brk ∧
      m2._sz = m._sz ∧
      m2._cmp_k = m._cmp_k :=
  Exists.elim (set_parent_step (m := m) c_l (some t)) fun m1 S1 =>
  have w1 : m1.mem l = some { color := cl, val := vl, l := q2, r := q3, parent := some t } := S1.2.1
  Exists.elim (set_parent_step (m := m1) ((S1.2.2.1 k d_k_l).trans c_k) (some t)) fun m2 S2 =>
  have w2 : m2.mem k = some { color := ck, val := vk, l := some t, r := q1, parent := some t } :=
    S2.2.1
  have k2_p := (S2.2.2.1 p d_p_k).trans ((S1.2.2.1 p d_p_l).trans c_p)
  have k2_t := (S2.2.2.1 t d_t_k).trans ((S1.2.2.1 t d_t_l).trans c_t)
  Exists.elim (set_l_step (m := { m2 with _root := some t }) w2 (some p)) fun m3 S3 =>
  have w3 : m3.mem k = some { color := ck, val := vk, l := some p, r := q1, parent := some t } :=
    S3.2.1
  Exists.elim (set_l_step (m := m3) ((S3.2.2.1 p d_p_k).trans k2_p) none) fun m4 S4 =>
  have w4 : m4.mem p = some { color := cP, val := vP, l := none, r := some k, parent := none } :=
    S4.2.1
  have k4_t := (S4.2.2.1 t d_t_p).trans ((S3.2.2.1 t d_t_k).trans k2_t)
  Exists.elim (set_r_step (m := m4) w4 none) fun m5 S5 =>
  have w5 : m5.mem p = some { color := cP, val := vP, l := none, r := none, parent := none } :=
    S5.2.1
  Exists.elim (set_parent_step (m := m5) w5 (some k)) fun m6 S6 =>
  have w6 : m6.mem p = some { color := cP, val := vP, l := none, r := none, parent := some k } :=
    S6.2.1
  have xr6 : m6._root = some t := S6.2.2.2.2.1.trans (S5.2.2.2.2.1.trans (S4.2.2.2.2.1.trans
    (S3.2.2.2.2.1 : m3._root = some t)))
  have k6_t := (S6.2.2.1 t d_t_p).trans ((S5.2.2.1 t d_t_p).trans k4_t)
  Exists.elim (set_l_step (m := m6) k6_t (some l)) fun m7 S7 =>
  have w7 : m7.mem t = some { color := ct, val := vt, l := some l, r := none, parent := some k } :=
    S7.2.1
  Exists.elim (set_r_step (m := m7) w7 (some k)) fun m8 S8 =>
  have w8 : m8.mem t = some { color := ct, val := vt, l := some l, r := some k, parent := some k }
    := S8.2.1
  Exists.elim (set_parent_step (m := m8) w8 none) fun m9 S9 =>
  have w9 : m9.mem t = some { color := ct, val := vt, l := some l, r := some k, parent := none } :=
    S9.2.1
  have xr9 : m9._root = some t := S9.2.2.2.2.1.trans (S8.2.2.2.2.1.trans (S7.2.2.2.2.1.trans xr6))
  have k8_p := (S8.2.2.1 p d_p_t).trans ((S7.2.2.1 p d_p_t).trans w6)
  Exists.elim (set_color_step (m := m9) ((S9.2.2.1 p d_p_t).trans k8_p) ct) fun m10 S10 =>
  have w10 : m10.mem p = some { color := ct, val := vP, l := none, r := none, parent := some k } :=
    S10.2.1
  Exists.elim (set_color_step (m := m10) ((S10.2.2.1 t d_t_p).trans w9) cP) fun m11 S11 =>
  have w11 : m11.mem t = some { color := cP, val := vt, l := some l, r := some k, parent := none }
    := S11.2.1
  have k5_k := (S5.2.2.1 k d_k_p).trans ((S4.2.2.1 k d_k_p).trans w3)
  have k7_k := (S7.2.2.1 k d_k_t).trans ((S6.2.2.1 k d_k_p).trans k5_k)
  have k9_k := (S9.2.2.1 k d_k_t).trans ((S8.2.2.1 k d_k_t).trans k7_k)
  have k11_k := (S11.2.2.1 k d_k_t).trans ((S10.2.2.1 k d_k_p).trans k9_k)
  have k3_l := (S3.2.2.1 l d_l_k).trans ((S2.2.2.1 l d_l_k).trans w1)
  have k5_l := (S5.2.2.1 l d_l_p).trans ((S4.2.2.1 l d_l_p).trans k3_l)
  have k7_l := (S7.2.2.1 l d_l_t).trans ((S6.2.2.1 l d_l_p).trans k5_l)
  have k9_l := (S9.2.2.1 l d_l_t).trans ((S8.2.2.1 l d_l_t).trans k7_l)
  have k11_l := (S11.2.2.1 l d_l_t).trans ((S10.2.2.1 l d_l_p).trans k9_l)
  have hop : map._swap_nodes m (some p) (some t) = some m11 := by
    simp only [map._swap_nodes, map._swap_set_parent, map._swap_set_child,
      (get_l_eq (m := m) c_p : get_l m (some p) = some (some l)), d_l_t, d_t_l, S1.1,
      (get_r_eq (m := m1) ((S1.2.2.1 p d_p_l).trans c_p) : get_r m1 (some p) = some (some k)),
      d_k_t, d_t_k, S2.1, (get_parent_eq (m := m2) k2_p : get_parent m2 (some p) = some none),
      ((S2.2.2.2.2.1.trans (S1.2.2.2.2.1.trans hr0)) : m2._root = some p),
      (get_l_eq (m := { m2 with _root := some t }) k2_t : get_l { m2 with _root := some t } (some
        t) = some none),
      (get_r_eq (m := { m2 with _root := some t }) k2_t : get_r { m2 with _root := some t } (some
        t) = some none),
      (get_parent_eq (m := { m2 with _root := some t }) k2_t : get_parent
        { m2 with _root := some t } (some t) = some (some k)),
      d_k_p, d_p_k,
      (get_l_eq (m := { m2 with _root := some t }) w2 : get_l { m2 with _root := some t } (some k)
        = some (some t)),
      S3.1,
      (get_l_eq (m := m3) ((S3.2.2.1 p d_p_k).trans k2_p) : get_l m3 (some p) = some (some l)),
      (get_r_eq (m := m3) ((S3.2.2.1 p d_p_k).trans k2_p) : get_r m3 (some p) = some (some k)),
      (get_parent_eq (m := m3) ((S3.2.2.1 p d_p_k).trans k2_p) : get_parent m3 (some p) = some
        none),
      (get_color_eq (m := m3) ((S3.2.2.1 p d_p_k).trans k2_p) : get_color m3 (some p) = some cP),
      (get_l_eq (m := m3) ((S3.2.2.1 t d_t_k).trans k2_t) : get_l m3 (some t) = some none), S4.1,
      (get_r_eq (m := m4) k4_t : get_r m4 (some t) = some none), S5.1,
      (get_parent_eq (m := m5) ((S5.2.2.1 t d_t_p).trans k4_t) : get_parent m5 (some t) = some
        (some k)),
      S6.1, S7.1, S8.1, S9.1, (get_color_eq (m := m9) w9 : get_color m9 (some t) = some ct),
      S10.1, S11.1, hr0, bind_eq_ub, pure_eq_some, ub_bind_some, ne_eq, Option.some.injEq,
      not_false_eq_true, not_true_eq_false, and_self, and_true, true_and, and_false, false_and,
      if_true, if_false, ite_true, ite_false, reduceCtorEq, reduceIte, ite_not, not_not,
      Bool.not_eq_true, decide_eq_true_eq, decide_eq_false_iff_not, decide_True, decide_False,
      Bool.false_eq_true, eq_self_iff_true, Option.isSome_some, Option.isSome_none]
  have h_l : ∀ b, b ∉ [l, k, p, t] → b ≠ l := fun b hb e => hb (e ▸ List.Mem.head _)
  have h_k : ∀ b, b ∉ [l, k, p, t] → b ≠ k := fun b hb e => hb (e ▸ List.Mem.tail _ (List.Mem.head
    _))
  have h_p : ∀ b, b ∉ [l, k, p, t] → b ≠ p := fun b hb e => hb (e ▸ List.Mem.tail _ (List.Mem.tail
    _ (List.Mem.head _)))
  have h_t : ∀ b, b ∉ [l, k, p, t] → b ≠ t := fun b hb e => hb (e ▸ List.Mem.tail _ (List.Mem.tail
    _ (List.Mem.tail _ (List.Mem.head _))))
  ⟨m11, hop, w11, k11_k, ((S11.2.2.1 p d_p_t).trans w10), k11_l, (fun b hb => ((S11.2.2.1 b (h_t b
    hb)).trans ((S10.2.2.1 b (h_p b hb)).trans ((S9.2.2.1 b (h_t b hb)).trans ((S8.2.2.1 b (h_t b
    hb)).trans ((S7.2.2.1 b (h_t b hb)).trans ((S6.2.2.1 b (h_p b hb)).trans ((S5.2.2.1 b (h_p b
    hb)).trans ((S4.2.2.1 b (h_p b hb)).trans ((S3.2.2.1 b (h_k b hb)).trans ((S2.2.2.1 b (h_k b
    hb)).trans (S1.2.2.1 b (h_l b hb))))))))))))), (S11.2.2.2.2.1.trans (S10.2.2.2.2.1.trans xr9)),
    (S11.2.2.2.1.trans (S10.2.2.2.1.trans (S9.2.2.2.1.trans (S8.2.2.2.1.trans (S7.2.2.2.1.trans
    (S6.2.2.2.1.trans (S5.2.2.2.1.trans (S4.2.2.2.1.trans (S3.2.2.2.1.trans (S2.2.2.2.1.trans
    S1.2.2.2.1)))))))))), (S11.2.2.2.2.2.1.trans (S10.2.2.2.2.2.1.trans (S9.2.2.2.2.2.1.trans
    (S8.2.2.2.2.2.1.trans (S7.2.2.2.2.2.1.trans (S6.2.2.2.2.2.1.trans (S5.2.2.2.2.2.1.trans
    (S4.2.2.2.2.2.1.trans (S3.2.2.2.2.2.1.trans (S2.2.2.2.2.2.1.trans S1.2.2.2.2.2.1)))))))))),
    (S11.2.2.2.2.2.2.trans (S10.2.2.2.2.2.2.trans (S9.2.2.2.2.2.2.trans (S8.2.2.2.2.2.2.trans
    (S7.2.2.2.2.2.2.trans (S6.2.2.2.2.2.2.trans (S5.2.2.2.2.2.2.trans (S4.2.2.2.2.2.2.trans
    (S3.2.2.2.2.2.2.trans (S2.2.2.2.2.2.2.trans S1.2.2.2.2.2.2))))))))))⟩

/-- Member `_swap_nodes` of a node and the left child of its right child. -/
theorem swap_far1_succ_root_nil
    {m : map K V} {t k p l : Nat} {ct ck cP cl : color_type} {vt vk vP vl : Option (K × V)}
    {sk ll lr : tree K V}
    (h : Rep m (fill ((.L k ck vk sk) :: (.R p cP vP (.node l cl vl ll lr)) :: [])
      (.node t ct vt .nil .nil))) :
    ∃ m2, map._swap_nodes m (some p) (some t) = some m2 ∧
      Rep m2 (fill ((.L k ck vk sk) :: (.R t cP vt (.node l cl vl ll lr)) :: [])
        (.node p ct vP .nil .nil)) ∧ SameAux m m2 :=
  have hs := shaped_fill.1 h.shaped
  have c_t : m.mem t = some { color := ct, val := vt, l := none, r := none, parent := some k } :=
    hs.2.1
  have c_k : m.mem k = some { color := ck, val := vk, l := some t, r := sk.top, parent := some p }
    := hs.1.1
  have c_p : m.mem p = some { color := cP, val := vP, l := some l, r := some k, parent := none } :=
    hs.1.2.2.1
  have c_l : m.mem l = some { color := cl, val := vl, l := ll.top, r := lr.top, parent := some p }
    := hs.1.2.2.2.1.1
  have hB : (List.flatten [ll.addrs, [l], lr.addrs, [p], [t], [k], sk.addrs]).Nodup := by
    have e : (fill ((.L k ck vk sk) :: (.R p cP vP (.node l cl vl ll lr)) :: []) (.node t ct vt
      .nil .nil)).addrs =
        List.flatten [ll.addrs, [l], lr.addrs, [p], [t], [k], sk.addrs] := by
      rw [fill_addrs]
      simp [pbefore, pafter, pbefore_append, pafter_append, tree.addrs]
    exact e ▸ h.nodup
  have hr0 : m._root = some p :=
    h.root.trans (by simp only [fill_L, fill_R, fill_append, fill_nil, tree.top_node])
  Exists.elim (swap_far1_succ_root_nil_cells c_t c_k c_p c_l (blocks_ne_at hB 1 4 rfl rfl rfl)
    (blocks_ne_at hB 4 1 rfl rfl rfl) (blocks_ne_at hB 3 1 rfl rfl rfl) (blocks_ne_at hB 5 4 rfl
    rfl rfl) (blocks_ne_at hB 4 5 rfl rfl rfl) (blocks_ne_at hB 5 1 rfl rfl rfl) (blocks_ne_at hB 3
    5 rfl rfl rfl) (blocks_ne_at hB 5 3 rfl rfl rfl) (blocks_ne_at hB 4 3 rfl rfl rfl)
    (blocks_ne_at hB 3 4 rfl rfl rfl) (blocks_ne_at hB 1 5 rfl rfl rfl) (blocks_ne_at hB 1 3 rfl
    rfl rfl) hr0) fun m2 H =>
  have fr := H.2.2.2.2.2.1
  have a_sk : ∀ b ∈ sk.addrs, m2.mem b = m.mem b :=
    region_agree hB [1, 5, 3, 4] [l, k, p, t] 6 rfl rfl rfl fr
  have a_ll : ∀ b ∈ ll.addrs, m2.mem b = m.mem b :=
    region_agree hB [1, 5, 3, 4] [l, k, p, t] 0 rfl rfl rfl fr
  have a_lr : ∀ b ∈ lr.addrs, m2.mem b = m.mem b :=
    region_agree hB [1, 5, 3, 4] [l, k, p, t] 2 rfl rfl rfl fr
  have hroot : m2._root = (fill ((.L k ck vk sk) :: (.R t cP vt (.node l cl vl ll lr)) :: [])
    (.node p ct vP .nil .nil)).top := by
    rw [H.2.2.2.2.2.2.1]
    simp only [fill_L, fill_R, fill_append, fill_nil, tree.top_node]
  have hpath : ShapedPath m2.mem ((.L k ck vk sk) :: (.R t cP vt (.node l cl vl ll lr)) :: [])
    (some p) :=
    ⟨H.2.2.1, Shaped.agree hs.1.2.1 a_sk, ⟨H.2.1, ⟨H.2.2.2.2.1, Shaped.agree hs.1.2.2.2.1.2.1 a_ll,
      Shaped.agree hs.1.2.2.2.1.2.2 a_lr⟩, trivial⟩⟩
  have htree : Shaped m2.mem (some k) (.node p ct vP .nil .nil) :=
    ⟨H.2.2.2.1, trivial, trivial⟩
  ⟨m2, H.1, h.of_perm (perm_swap_far1_succ _) H.2.2.2.2.2.2.2.1 hroot (shaped_fill.2 ⟨hpath,
    htree⟩), ⟨H.2.2.2.2.2.2.2.1, H.2.2.2.2.2.2.2.2.1, H.2.2.2.2.2.2.2.2.2⟩⟩

/-- The cells after `_swap_nodes`, case `far2_succ_root_nil`. -/
theorem swap_far2_succ_root_nil_cells {m : map K V} {t f k p l : Nat}
    {ct cf ck cP cl : color_type} {vt vf vk vP vl : Option (K × V)} {q1 q2 q3 q4 q5 q6 : ptr}
    (c_t : m.mem t = some { color := ct, val := vt, l := none, r := none, parent := some f })
    (c_f : m.mem f = some { color := cf, val := vf, l := some t, r := q1, parent := q2 })
    (c_k : m.mem k = some { color := ck, val := vk, l := q3, r := q4, parent := some p })
    (c_p : m.mem p = some { color := cP, val := vP, l := some l, r := some k, parent := none })
    (c_l : m.mem l = some { color := cl, val := vl, l := q5, r := q6, parent := some p })
    (d_l_t : l ≠ t)
    (d_t_l : t ≠ l)
    (d_p_l : p ≠ l)
    (d_k_t : k ≠ t)
    (d_t_k : t ≠ k)
    (d_k_l : k ≠ l)
    (d_p_k : p ≠ k)
    (d_f_p : f ≠ p)
    (d_p_f : p ≠ f)
    (d_f_l : f ≠ l)
    (d_f_k : f ≠ k)
    (d_t_f : t ≠ f)
    (d_t_p : t ≠ p)
    (d_p_t : p ≠ t)
    (d_f_t : f ≠ t)
    (d_k_f : k ≠ f)
    (d_k_p : k ≠ p)
    (d_l_k : l ≠ k)
    (d_l_f : l ≠ f)
    (d_l_p : l ≠ p)
    (hr0 : m._root = some p) :
    ∃ m2, map._swap_nodes m (some p) (some t) = some m2 ∧
      m2.mem t = some { color := cP, val := vt, l := some l, r := some k, parent := none } ∧
      m2.mem f = some { color := cf, val := vf, l := some p, r := q1, parent := q2 } ∧
      m2.mem k = some { color := ck, val := vk, l := q3, r := q4, parent := some t } ∧
      m2.mem p = some { color := ct, val := vP, l := none, r := none, parent := some f } ∧
      m2.mem l = some { color := cl, val := vl, l := q5, r := q6, parent := some t } ∧
      (∀ b, b ∉ [l, k, f, p, t] → m2.mem b = m.mem b) ∧
      m2._root = some t ∧
      m2.brk = m.brk ∧
      m2._sz = m._sz ∧
      m2._cmp_k = m._cmp_k :=
  Exists.elim (set_parent_step (m := m) c_l (some t)) fun m1 S1 =>
  have w1 : m1.mem l = some { color := cl, val := vl, l := q5, r := q6, parent := some t } := S1.2.1
  Exists.elim (set_parent_step (m := m1) ((S1.2.2.1 k d_k_l).trans c_k) (some t)) fun m2 S2 =>
  have w2 : m2.mem k = some { color := ck, val := vk, l := q3, r := q4, parent := some t } := S2.2.1
  have k2_p := (S2.2.2.1 p d_p_k).trans ((S1.2.2.1 p d_p_l).trans c_p)
  have k2_t := (S2.2.2.1 t d_t_k).trans ((S1.2.2.1 t d_t_l).trans c_t)
  have k2_f := (S2.2.2.1 f d_f_k).trans ((S1.2.2.1 f d_f_l).trans c_f)
  Exists.elim (set_l_step (m := { m2 with _root := some t }) k2_f (some p)) fun m3 S3 =>
  have w3 : m3.mem f = some { color := cf, val := vf, l := some p, r := q1, parent := q2 } := S3.2.1
  Exists.elim (set_l_step (m := m3) ((S3.2.2.1 p d_p_f).trans k2_p) none) fun m4 S4 =>
  have w4 : m4.mem p = some { color := cP, val := vP, l := none, r := some k, parent := none } :=
    S4.2.1
  have k4_t := (S4.2.2.1 t d_t_p).trans ((S3.2.2.1 t d_t_f).trans k2_t)
  Exists.elim (set_r_step (m := m4) w4 none) fun m5 S5 =>
  have w5 : m5.mem p = some { color := cP, val := vP, l := none, r := none, parent := none } :=
    S5.2.1
  Exists.elim (set_parent_step (m := m5) w5 (some f)) fun m6 S6 =>
  have w6 : m6.mem p = some { color := cP, val := vP, l := none, r := none, parent := some f } :=
    S6.2.1
  have xr6 : m6._root = some t := S6.2.2.2.2.1.trans (S5.2.2.2.2.1.trans (S4.2.2.2.2.1.trans
    (S3.2.2.2.2.1 : m3._root = some t)))
  have k6_t := (S6.2.2.1 t d_t_p).trans ((S5.2.2.1 t d_t_p).trans k4_t)
  Exists.elim (set_l_step (m := m6) k6_t (some l)) fun m7 S7 =>
  have w7 : m7.mem t = some { color := ct, val := vt, l := some l, r := none, parent := some f } :=
    S7.2.1
  Exists.elim (set_r_step (m := m7) w7 (some k)) fun m8 S8 =>
  have w8 : m8.mem t = some { color := ct, val := vt, l := some l, r := some k, parent := some f }
    := S8.2.1
  Exists.elim (set_parent_step (m := m8) w8 none) fun m9 S9 =>
  have w9 : m9.mem t = some { color := ct, val := vt, l := some l, r := some k, parent := none } :=
    S9.2.1
  have xr9 : m9._root = some t := S9.2.2.2.2.1.trans (S8.2.2.2.2.1.trans (S7.2.2.2.2.1.trans xr6))
  have k8_p := (S8.2.2.1 p d_p_t).trans ((S7.2.2.1 p d_p_t).trans w6)
  Exists.elim (set_color_step (m := m9) ((S9.2.2.1 p d_p_t).trans k8_p) ct) fun m10 S10 =>
  have w10 : m10.mem p = some { color := ct, val := vP, l := none, r := none, parent := some f } :=
    S10.2.1
  Exists.elim (set_color_step (m := m10) ((S10.2.2.1 t d_t_p).trans w9) cP) fun m11 S11 =>
  have w11 : m11.mem t = some { color := cP, val := vt, l := some l, r := some k, parent := none }
    := S11.2.1
  have k5_f := (S5.2.2.1 f d_f_p).trans ((S4.2.2.1 f d_f_p).trans w3)
  have k7_f := (S7.2.2.1 f d_f_t).trans ((S6.2.2.1 f d_f_p).trans k5_f)
  have k9_f := (S9.2.2.1 f d_f_t).trans ((S8.2.2.1 f d_f_t).trans k7_f)
  have k11_f := (S11.2.2.1 f d_f_t).trans ((S10.2.2.1 f d_f_p).trans k9_f)
  have k4_k := (S4.2.2.1 k d_k_p).trans ((S3.2.2.1 k d_k_f).trans w2)
  have k6_k := (S6.2.2.1 k d_k_p).trans ((S5.2.2.1 k d_k_p).trans k4_k)
  have k8_k := (S8.2.2.1 k d_k_t).trans ((S7.2.2.1 k d_k_t).trans k6_k)
  have k10_k := (S10.2.2.1 k d_k_p).trans ((S9.2.2.1 k d_k_t).trans k8_k)
  have k3_l := (S3.2.2.1 l d_l_f).trans ((S2.2.2.1 l d_l_k).trans w1)
  have k5_l := (S5.2.2.1 l d_l_p).trans ((S4.2.2.1 l d_l_p).trans k3_l)
  have k7_l := (S7.2.2.1 l d_l_t).trans ((S6.2.2.1 l d_l_p).trans k5_l)
  have k9_l := (S9.2.2.1 l d_l_t).trans ((S8.2.2.1 l d_l_t).trans k7_l)
  have k11_l := (S11.2.2.1 l d_l_t).trans ((S10.2.2.1 l d_l_p).trans k9_l)
  have hop : map._swap_nodes m (some p) (some t) = some m11 := by
    simp only [map._swap_nodes, map._swap_set_parent, map._swap_set_child,
      (get_l_eq (m := m) c_p : get_l m (some p) = some (some l)), d_l_t, d_t_l, S1.1,
      (get_r_eq (m := m1) ((S1.2.2.1 p d_p_l).trans c_p) : get_r m1 (some p) = some (some k)),
      d_k_t, d_t_k, S2.1, (get_parent_eq (m := m2) k2_p : get_parent m2 (some p) = some none),
      ((S2.2.2.2.2.1.trans (S1.2.2.2.2.1.trans hr0)) : m2._root = some p),
      (get_l_eq (m := { m2 with _root := some t }) k2_t : get_l { m2 with _root := some t } (some
        t) = some none),
      (get_r_eq (m := { m2 with _root := some t }) k2_t : get_r { m2 with _root := some t } (some
        t) = some none),
      (get_parent_eq (m := { m2 with _root := some t }) k2_t : get_parent
        { m2 with _root := some t } (some t) = some (some f)),
      d_f_p, d_p_f,
      (get_l_eq (m := { m2 with _root := some t }) k2_f : get_l { m2 with _root := some t } (some
        f) = some (some t)),
      S3.1,
      (get_l_eq (m := m3) ((S3.2.2.1 p d_p_f).trans k2_p) : get_l m3 (some p) = some (some l)),
      (get_r_eq (m := m3) ((S3.2.2.1 p d_p_f).trans k2_p) : get_r m3 (some p) = some (some k)),
      (get_parent_eq (m := m3) ((S3.2.2.1 p d_p_f).trans k2_p) : get_parent m3 (some p) = some
        none),
      (get_color_eq (m := m3) ((S3.2.2.1 p d_p_f).trans k2_p) : get_color m3 (some p) = some cP),
      (get_l_eq (m := m3) ((S3.2.2.1 t d_t_f).trans k2_t) : get_l m3 (some t) = some none), S4.1,
      (get_r_eq (m := m4) k4_t : get_r m4 (some t) = some none), S5.1,
      (get_parent_eq (m := m5) ((S5.2.2.1 t d_t_p).trans k4_t) : get_parent m5 (some t) = some
        (some f)),
      S6.1, S7.1, S8.1, S9.1, (get_color_eq (m := m9) w9 : get_color m9 (some t) = some ct),
      S10.1, S11.1, hr0, bind_eq_ub, pure_eq_some, ub_bind_some, ne_eq, Option.some.injEq,
      not_false_eq_true, not_true_eq_false, and_self, and_true, true_and, and_false, false_and,
      if_true, if_false, ite_true, ite_false, reduceCtorEq, reduceIte, ite_not, not_not,
      Bool.not_eq_true, decide_eq_true_eq, decide_eq_false_iff_not, decide_True, decide_False,
      Bool.false_eq_true, eq_self_iff_true, Option.isSome_some, Option.isSome_none]
  have h_l : ∀ b, b ∉ [l, k, f, p, t] → b ≠ l := fun b hb e => hb (e ▸ List.Mem.head _)
  have h_k : ∀ b, b ∉ [l, k, f, p, t] → b ≠ k := fun b hb e => hb (e ▸ List.Mem.tail _
    (List.Mem.head _))
  have h_f : ∀ b, b ∉ [l, k, f, p, t] → b ≠ f := fun b hb e => hb (e ▸ List.Mem.tail _
    (List.Mem.tail _ (List.Mem.head _)))
  have h_p : ∀ b, b ∉ [l, k, f, p, t] → b ≠ p := fun b hb e => hb (e ▸ List.Mem.tail _
    (List.Mem.tail _ (List.Mem.tail _ (List.Mem.head _))))
  have h_t : ∀ b, b ∉ [l, k, f, p, t] → b ≠ t := fun b hb e => hb (e ▸ List.Mem.tail _
    (List.Mem.tail _ (List.Mem.tail _ (List.Mem.tail _ (List.Mem.head _)))))
  ⟨m11, hop, w11, k11_f, ((S11.2.2.1 k d_k_t).trans k10_k), ((S11.2.2.1 p d_p_t).trans w10), k11_l,
    (fun b hb => ((S11.2.2.1 b (h_t b hb)).trans ((S10.2.2.1 b (h_p b hb)).trans ((S9.2.2.1 b (h_t
    b hb)).trans ((S8.2.2.1 b (h_t b hb)).trans ((S7.2.2.1 b (h_t b hb)).trans ((S6.2.2.1 b (h_p b
    hb)).trans ((S5.2.2.1 b (h_p b hb)).trans ((S4.2.2.1 b (h_p b hb)).trans ((S3.2.2.1 b (h_f b
    hb)).trans ((S2.2.2.1 b (h_k b hb)).trans (S1.2.2.1 b (h_l b hb))))))))))))),
    (S11.2.2.2.2.1.trans (S10.2.2.2.2.1.trans xr9)), (S11.2.2.2.1.trans (S10.2.2.2.1.trans
    (S9.2.2.2.1.trans (S8.2.2.2.1.trans (S7.2.2.2.1.trans (S6.2.2.2.1.trans (S5.2.2.2.1.trans
    (S4.2.2.2.1.trans (S3.2.2.2.1.trans (S2.2.2.2.1.trans S1.2.2.2.1)))))))))),
    (S11.2.2.2.2.2.1.trans (S10.2.2.2.2.2.1.trans (S9.2.2.2.2.2.1.trans (S8.2.2.2.2.2.1.trans
    (S7.2.2.2.2.2.1.trans (S6.2.2.2.2.2.1.trans (S5.2.2.2.2.2.1.trans (S4.2.2.2.2.2.1.trans
    (S3.2.2.2.2.2.1.trans (S2.2.2.2.2.2.1.trans S1.2.2.2.2.2.1)))))))))), (S11.2.2.2.2.2.2.trans
    (S10.2.2.2.2.2.2.trans (S9.2.2.2.2.2.2.trans (S8.2.2.2.2.2.2.trans (S7.2.2.2.2.2.2.trans
    (S6.2.2.2.2.2.2.trans (S5.2.2.2.2.2.2.trans (S4.2.2.2.2.2.2.trans (S3.2.2.2.2.2.2.trans
    (S2.2.2.2.2.2.2.trans S1.2.2.2.2.2.2))))))))))⟩

/-- Member `_swap_nodes` of a node and a left descendant of its right child. -/
theorem swap_far2_succ_root_nil
    {m : map K V} {t f k p l : Nat} {ct cf ck cP cl : color_type}
    {vt vf vk vP vl : Option (K × V)} {sf sk ll lr : tree K V} {rm : List (frame K V)}
    (h : Rep m (fill ((.L f cf vf sf) :: (rm ++ (.L k ck vk sk) :: (.R p cP vP (.node l cl vl ll lr)) :: []))
      (.node t ct vt .nil .nil))) :
    ∃ m2, map._swap_nodes m (some p) (some t) = some m2 ∧
      Rep m2 (fill ((.L f cf vf sf) :: (rm ++ (.L k ck vk sk) :: (.R t cP vt (.node l cl vl ll lr)) :: []))
        (.node p ct vP .nil .nil)) ∧ SameAux m m2 :=
  have hs := shaped_fill.1 h.shaped
  have c_t : m.mem t = some { color := ct, val := vt, l := none, r := none, parent := some f } :=
    hs.2.1
  have c_f : m.mem f = some { color := cf, val := vf, l := some t, r := sf.top, parent := ptop ((rm
    ++ (.L k ck vk sk) :: (.R p cP vP (.node l cl vl ll lr)) :: [])) } := hs.1.1
  have s_rm := hs.1.2.2
  Exists.elim (ShapedPath.drop s_rm) fun hh sp2 =>
  have c_k : m.mem k = some { color := ck, val := vk, l := hh, r := sk.top, parent := some p } :=
    sp2.1
  have c_p : m.mem p = some { color := cP, val := vP, l := some l, r := some k, parent := none } :=
    sp2.2.2.1
  have c_l : m.mem l = some { color := cl, val := vl, l := ll.top, r := lr.top, parent := some p }
    := sp2.2.2.2.1.1
  have hB : (List.flatten [ll.addrs, [l], lr.addrs, [p], (pbefore rm).map Prod.fst, [t], [f],
    sf.addrs, (pafter rm).map Prod.fst, [k], sk.addrs]).Nodup := by
    have e : (fill ((.L f cf vf sf) :: (rm ++ (.L k ck vk sk) :: (.R p cP vP (.node l cl vl ll lr))
      :: [])) (.node t ct vt .nil .nil)).addrs =
        List.flatten [ll.addrs, [l], lr.addrs, [p], (pbefore rm).map Prod.fst, [t], [f], sf.addrs,
          (pafter rm).map Prod.fst, [k], sk.addrs] := by
      rw [fill_addrs]
      simp [pbefore, pafter, pbefore_append, pafter_append, tree.addrs]
    exact e ▸ h.nodup
  have hr0 : m._root = some p :=
    h.root.trans (by simp only [fill_L, fill_R, fill_append, fill_nil, tree.top_node])
  Exists.elim (swap_far2_succ_root_nil_cells c_t c_f c_k c_p c_l (blocks_ne_at hB 1 5 rfl rfl rfl)
    (blocks_ne_at hB 5 1 rfl rfl rfl) (blocks_ne_at hB 3 1 rfl rfl rfl) (blocks_ne_at hB 9 5 rfl
    rfl rfl) (blocks_ne_at hB 5 9 rfl rfl rfl) (blocks_ne_at hB 9 1 rfl rfl rfl) (blocks_ne_at hB 3
    9 rfl rfl rfl) (blocks_ne_at hB 6 3 rfl rfl rfl) (blocks_ne_at hB 3 6 rfl rfl rfl)
    (blocks_ne_at hB 6 1 rfl rfl rfl) (blocks_ne_at hB 6 9 rfl rfl rfl) (blocks_ne_at hB 5 6 rfl
    rfl rfl) (blocks_ne_at hB 5 3 rfl rfl rfl) (blocks_ne_at hB 3 5 rfl rfl rfl) (blocks_ne_at hB 6
    5 rfl rfl rfl) (blocks_ne_at hB 9 6 rfl rfl rfl) (blocks_ne_at hB 9 3 rfl rfl rfl)
    (blocks_ne_at hB 1 9 rfl rfl rfl) (blocks_ne_at hB 1 6 rfl rfl rfl) (blocks_ne_at hB 1 3 rfl
    rfl rfl) hr0) fun m2 H =>
  have fr := H.2.2.2.2.2.2.1
  have a_sf : ∀ b ∈ sf.addrs, m2.mem b = m.mem b :=
    region_agree hB [1, 9, 6, 3, 5] [l, k, f, p, t] 7 rfl rfl rfl fr
  have a_rm : ∀ b ∈ paddrs rm, m2.mem b = m.mem b :=
    paddrs_agree (region_agree hB [1, 9, 6, 3, 5] [l, k, f, p, t] 4 rfl rfl rfl fr)
      (region_agree hB [1, 9, 6, 3, 5] [l, k, f, p, t] 8 rfl rfl rfl fr)
  have a_sk : ∀ b ∈ sk.addrs, m2.mem b = m.mem b :=
    region_agree hB [1, 9, 6, 3, 5] [l, k, f, p, t] 10 rfl rfl rfl fr
  have a_ll : ∀ b ∈ ll.addrs, m2.mem b = m.mem b :=
    region_agree hB [1, 9, 6, 3, 5] [l, k, f, p, t] 0 rfl rfl rfl fr
  have a_lr : ∀ b ∈ lr.addrs, m2.mem b = m.mem b :=
    region_agree hB [1, 9, 6, 3, 5] [l, k, f, p, t] 2 rfl rfl rfl fr
  have ep_f : ptop ((rm ++ (.L k ck vk sk) :: (.R t cP vt (.node l cl vl ll lr)) :: [])) = ptop
    ((rm ++ (.L k ck vk sk) :: (.R p cP vP (.node l cl vl ll lr)) :: [])) :=
    ptop_append_cons rm _ _ rfl
  have hroot : m2._root = (fill ((.L f cf vf sf) :: (rm ++ (.L k ck vk sk) :: (.R t cP vt (.node l
    cl vl ll lr)) :: [])) (.node p ct vP .nil .nil)).top := by
    rw [H.2.2.2.2.2.2.2.1]
    simp only [fill_L, fill_R, fill_append, fill_nil, tree.top_node]
  have hpath : ShapedPath m2.mem ((.L f cf vf sf) :: (rm ++ (.L k ck vk sk) :: (.R t cP vt (.node l
    cl vl ll lr)) :: [])) (some p) :=
    ⟨(by rw [ep_f]; exact H.2.2.1), Shaped.agree hs.1.2.1 a_sf, ShapedPath.splice_L s_rm a_rm c_k
      rfl (⟨H.2.2.2.1, Shaped.agree sp2.2.1 a_sk, ⟨H.2.1, ⟨H.2.2.2.2.2.1, Shaped.agree
      sp2.2.2.2.1.2.1 a_ll, Shaped.agree sp2.2.2.2.1.2.2 a_lr⟩, trivial⟩⟩)⟩
  have htree : Shaped m2.mem (some f) (.node p ct vP .nil .nil) :=
    ⟨H.2.2.2.2.1, trivial, trivial⟩
  ⟨m2, H.1, h.of_perm (perm_swap_far2_succ _) H.2.2.2.2.2.2.2.2.1 hroot (shaped_fill.2 ⟨hpath,
    htree⟩), ⟨H.2.2.2.2.2.2.2.2.1, H.2.2.2.2.2.2.2.2.2.1, H.2.2.2.2.2.2.2.2.2.2⟩⟩

/-- The cells after `_swap_nodes`, case `adj_succ_root_node`. -/
theorem swap_adj_succ_root_node_cells {m : map K V} {p l t r : Nat}
    {cP cl ct cr : color_type} {vP vl vt vr : Option (K × V)} {q1 q2 q3 q4 : ptr}
    (c_p : m.mem p = some { color := cP, val := vP, l := some l, r := some t, parent := none })
    (c_l : m.mem l = some { color := cl, val := vl, l := q1, r := q2, parent := some p })
    (c_t : m.mem t = some { color := ct, val := vt, l := none, r := some r, parent := some p })
    (c_r : m.mem r = some { color := cr, val := vr, l := q3, r := q4, parent := some t })
    (d_l_t : l ≠ t)
    (d_t_l : t ≠ l)
    (d_p_l : p ≠ l)
    (d_r_p : r ≠ p)
    (d_p_r : p ≠ r)
    (d_r_l : r ≠ l)
    (d_t_r : t ≠ r)
    (d_t_p : t ≠ p)
    (d_p_t : p ≠ t)
    (d_l_r : l ≠ r)
    (d_l_p : l ≠ p)
    (d_r_t : r ≠ t)
    (hr0 : m._root = some p) :
    ∃ m2, map._swap_nodes m (some p) (some t) = some m2 ∧
      m2.mem p = some { color := ct, val := vP, l := none, r := some r, parent := some t } ∧
      m2.mem l = some { color := cl, val := vl, l := q1, r := q2, parent := some t } ∧
      m2.mem t = some { color := cP, val := vt, l := some l, r := some p, parent := none } ∧
      m2.mem r = some { color := cr, val := vr, l := q3, r := q4, parent := some p } ∧
      (∀ b, b ∉ [l, r, p, t] → m2.mem b = m.mem b) ∧
      m2._root = some t ∧
      m2.brk = m.brk ∧
      m2._sz = m._sz ∧
      m2._cmp_k = m._cmp_k :=
  Exists.elim (set_parent_step (m := m) c_l (some t)) fun m1 S1 =>
  have w1 : m1.mem l = some { color := cl, val := vl, l := q1, r := q2, parent := some t } := S1.2.1
  Exists.elim (set_parent_step (m := { m1 with _root := some t }) ((S1.2.2.1 r d_r_l).trans c_r)
    (some p)) fun m2 S2 =>
  have w2 : m2.mem r = some { color := cr, val := vr, l := q3, r := q4, parent := some p } := S2.2.1
  have k2_t := (S2.2.2.1 t d_t_r).trans ((S1.2.2.1 t d_t_l).trans c_t)
  have k2_p := (S2.2.2.1 p d_p_r).trans ((S1.2.2.1 p d_p_l).trans c_p)
  Exists.elim (set_l_step (m := m2) k2_p none) fun m3 S3 =>
  have w3 : m3.mem p = some { color := cP, val := vP, l := none, r := some t, parent := none } :=
    S3.2.1
  Exists.elim (set_r_step (m := m3) w3 (some r)) fun m4 S4 =>
  have w4 : m4.mem p = some { color := cP, val := vP, l := none, r := some r, parent := none } :=
    S4.2.1
  have k4_t := (S4.2.2.1 t d_t_p).trans ((S3.2.2.1 t d_t_p).trans k2_t)
  Exists.elim (set_parent_step (m := m4) w4 (some t)) fun m5 S5 =>
  have w5 : m5.mem p = some { color := cP, val := vP, l := none, r := some r, parent := some t } :=
    S5.2.1
  have xr5 : m5._root = some t := S5.2.2.2.2.1.trans (S4.2.2.2.2.1.trans (S3.2.2.2.2.1.trans
    (S2.2.2.2.2.1 : m2._root = some t)))
  Exists.elim (set_l_step (m := m5) ((S5.2.2.1 t d_t_p).trans k4_t) (some l)) fun m6 S6 =>
  have w6 : m6.mem t = some { color := ct, val := vt, l := some l, r := some r, parent := some p }
    := S6.2.1
  Exists.elim (set_r_step (m := m6) w6 (some p)) fun m7 S7 =>
  have w7 : m7.mem t = some { color := ct, val := vt, l := some l, r := some p, parent := some p }
    := S7.2.1
  Exists.elim (set_parent_step (m := m7) w7 none) fun m8 S8 =>
  have w8 : m8.mem t = some { color := ct, val := vt, l := some l, r := some p, parent := none } :=
    S8.2.1
  have xr8 : m8._root = some t := S8.2.2.2.2.1.trans (S7.2.2.2.2.1.trans (S6.2.2.2.2.1.trans xr5))
  have k7_p := (S7.2.2.1 p d_p_t).trans ((S6.2.2.1 p d_p_t).trans w5)
  Exists.elim (set_color_step (m := m8) ((S8.2.2.1 p d_p_t).trans k7_p) ct) fun m9 S9 =>
  have w9 : m9.mem p = some { color := ct, val := vP, l := none, r := some r, parent := some t } :=
    S9.2.1
  Exists.elim (set_color_step (m := m9) ((S9.2.2.1 t d_t_p).trans w8) cP) fun m10 S10 =>
  have w10 : m10.mem t = some { color := cP, val := vt, l := some l, r := some p, parent := none }
    := S10.2.1
  have k3_l := (S3.2.2.1 l d_l_p).trans ((S2.2.2.1 l d_l_r).trans w1)
  have k5_l := (S5.2.2.1 l d_l_p).trans ((S4.2.2.1 l d_l_p).trans k3_l)
  have k7_l := (S7.2.2.1 l d_l_t).trans ((S6.2.2.1 l d_l_t).trans k5_l)
  have k9_l := (S9.2.2.1 l d_l_p).trans ((S8.2.2.1 l d_l_t).trans k7_l)
  have k4_r := (S4.2.2.1 r d_r_p).trans ((S3.2.2.1 r d_r_p).trans w2)
  have k6_r := (S6.2.2.1 r d_r_t).trans ((S5.2.2.1 r d_r_p).trans k4_r)
  have k8_r := (S8.2.2.1 r d_r_t).trans ((S7.2.2.1 r d_r_t).trans k6_r)
  have k10_r := (S10.2.2.1 r d_r_t).trans ((S9.2.2.1 r d_r_p).trans k8_r)
  have hop : map._swap_nodes m (some p) (some t) = some m10 := by
    simp only [map._swap_nodes, map._swap_set_parent, map._swap_set_child,
      (get_l_eq (m := m) c_p : get_l m (some p) = some (some l)), d_l_t, d_t_l, S1.1,
      (get_r_eq (m := m1) ((S1.2.2.1 p d_p_l).trans c_p) : get_r m1 (some p) = some (some t)),
      (get_parent_eq (m := m1) ((S1.2.2.1 p d_p_l).trans c_p) : get_parent m1 (some p) = some none),
      ((S1.2.2.2.2.1.trans hr0) : m1._root = some p),
      (get_l_eq (m := { m1 with _root := some t }) ((S1.2.2.1 t d_t_l).trans c_t) : get_l
        { m1 with _root := some t } (some t) = some none),
      (get_r_eq (m := { m1 with _root := some t }) ((S1.2.2.1 t d_t_l).trans c_t) : get_r
        { m1 with _root := some t } (some t) = some (some r)),
      d_r_p, d_p_r, S2.1,
      (get_parent_eq (m := m2) k2_t : get_parent m2 (some t) = some (some p)),
      (get_l_eq (m := m2) k2_p : get_l m2 (some p) = some (some l)),
      (get_r_eq (m := m2) k2_p : get_r m2 (some p) = some (some t)),
      (get_parent_eq (m := m2) k2_p : get_parent m2 (some p) = some none),
      (get_color_eq (m := m2) k2_p : get_color m2 (some p) = some cP),
      (get_l_eq (m := m2) k2_t : get_l m2 (some t) = some none), S3.1,
      (get_r_eq (m := m3) ((S3.2.2.1 t d_t_p).trans k2_t) : get_r m3 (some t) = some (some r)),
      S4.1, (get_parent_eq (m := m4) k4_t : get_parent m4 (some t) = some (some p)), S5.1, S6.1,
      S7.1, S8.1, (get_color_eq (m := m8) w8 : get_color m8 (some t) = some ct), S9.1, S10.1,
      hr0, bind_eq_ub, pure_eq_some, ub_bind_some, ne_eq, Option.some.injEq, not_false_eq_true,
      not_true_eq_false, and_self, and_true, true_and, and_false, false_and, if_true, if_false,
      ite_true, ite_false, reduceCtorEq, reduceIte, ite_not, not_not, Bool.not_eq_true,
      decide_eq_true_eq, decide_eq_false_iff_not, decide_True, decide_False, Bool.false_eq_true,
      eq_self_iff_true, Option.isSome_some, Option.isSome_none]
  have h_l : ∀ b, b ∉ [l, r, p, t] → b ≠ l := fun b hb e => hb (e ▸ List.Mem.head _)
  have h_r : ∀ b, b ∉ [l, r, p, t] → b ≠ r := fun b hb e => hb (e ▸ List.Mem.tail _ (List.Mem.head
    _))
  have h_p : ∀ b, b ∉ [l, r, p, t] → b ≠ p := fun b hb e => hb (e ▸ List.Mem.tail _ (List.Mem.tail
    _ (List.Mem.head _)))
  have h_t : ∀ b, b ∉ [l, r, p, t] → b ≠ t := fun b hb e => hb (e ▸ List.Mem.tail _ (List.Mem.tail
    _ (List.Mem.tail _ (List.Mem.head _))))
  ⟨m10, hop, ((S10.2.2.1 p d_p_t).trans w9), ((S10.2.2.1 l d_l_t).trans k9_l), w10, k10_r, (fun b
    hb => ((S10.2.2.1 b (h_t b hb)).trans ((S9.2.2.1 b (h_p b hb)).trans ((S8.2.2.1 b (h_t b
    hb)).trans ((S7.2.2.1 b (h_t b hb)).trans ((S6.2.2.1 b (h_t b hb)).trans ((S5.2.2.1 b (h_p b
    hb)).trans ((S4.2.2.1 b (h_p b hb)).trans ((S3.2.2.1 b (h_p b hb)).trans ((S2.2.2.1 b (h_r b
    hb)).trans (S1.2.2.1 b (h_l b hb)))))))))))), (S10.2.2.2.2.1.trans (S9.2.2.2.2.1.trans xr8)),
    (S10.2.2.2.1.trans (S9.2.2.2.1.trans (S8.2.2.2.1.trans (S7.2.2.2.1.trans (S6.2.2.2.1.trans
    (S5.2.2.2.1.trans (S4.2.2.2.1.trans (S3.2.2.2.1.trans (S2.2.2.2.1.trans S1.2.2.2.1))))))))),
    (S10.2.2.2.2.2.1.trans (S9.2.2.2.2.2.1.trans (S8.2.2.2.2.2.1.trans (S7.2.2.2.2.2.1.trans
    (S6.2.2.2.2.2.1.trans (S5.2.2.2.2.2.1.trans (S4.2.2.2.2.2.1.trans (S3.2.2.2.2.2.1.trans
    (S2.2.2.2.2.2.1.trans S1.2.2.2.2.2.1))))))))), (S10.2.2.2.2.2.2.trans (S9.2.2.2.2.2.2.trans
    (S8.2.2.2.2.2.2.trans (S7.2.2.2.2.2.2.trans (S6.2.2.2.2.2.2.trans (S5.2.2.2.2.2.2.trans
    (S4.2.2.2.2.2.2.trans (S3.2.2.2.2.2.2.trans (S2.2.2.2.2.2.2.trans S1.2.2.2.2.2.2)))))))))⟩

/-- Member `_swap_nodes` of a node and its right child, which has no left child. -/
theorem swap_adj_succ_root_node
    {m : map K V} {p l t r : Nat} {cP cl ct cr : color_type} {vP vl vt vr : Option (K × V)}
    {ll lr rl rr : tree K V}
    (h : Rep m (fill ([])
      (.node p cP vP (.node l cl vl ll lr) (.node t ct vt .nil (.node r cr vr rl rr))))) :
    ∃ m2, map._swap_nodes m (some p) (some t) = some m2 ∧
      Rep m2 (fill ([])
        (.node t cP vt (.node l cl vl ll lr) (.node p ct vP .nil (.node r cr vr rl rr)))) ∧ SameAux m m2 :=
  have hs := shaped_fill.1 h.shaped
  have c_p : m.mem p = some { color := cP, val := vP, l := some l, r := some t, parent := none } :=
    hs.2.1
  have c_l : m.mem l = some { color := cl, val := vl, l := ll.top, r := lr.top, parent := some p }
    := hs.2.2.1.1
  have c_t : m.mem t = some { color := ct, val := vt, l := none, r := some r, parent := some p } :=
    hs.2.2.2.1
  have c_r : m.mem r = some { color := cr, val := vr, l := rl.top, r := rr.top, parent := some t }
    := hs.2.2.2.2.2.1
  have hB : (List.flatten [ll.addrs, [l], lr.addrs, [p], [t], rl.addrs, [r], rr.addrs]).Nodup := by
    have e : (fill ([]) (.node p cP vP (.node l cl vl ll lr) (.node t ct vt .nil (.node r cr vr rl
      rr)))).addrs =
        List.flatten [ll.addrs, [l], lr.addrs, [p], [t], rl.addrs, [r], rr.addrs] := by
      rw [fill_addrs]
      simp [pbefore, pafter, pbefore_append, pafter_append, tree.addrs]
    exact e ▸ h.nodup
  have hr0 : m._root = some p :=
    h.root.trans (by simp only [fill_L, fill_R, fill_append, fill_nil, tree.top_node])
  Exists.elim (swap_adj_succ_root_node_cells c_p c_l c_t c_r (blocks_ne_at hB 1 4 rfl rfl rfl)
    (blocks_ne_at hB 4 1 rfl rfl rfl) (blocks_ne_at hB 3 1 rfl rfl rfl) (blocks_ne_at hB 6 3 rfl
    rfl rfl) (blocks_ne_at hB 3 6 rfl rfl rfl) (blocks_ne_at hB 6 1 rfl rfl rfl) (blocks_ne_at hB 4
    6 rfl rfl rfl) (blocks_ne_at hB 4 3 rfl rfl rfl) (blocks_ne_at hB 3 4 rfl rfl rfl)
    (blocks_ne_at hB 1 6 rfl rfl rfl) (blocks_ne_at hB 1 3 rfl rfl rfl) (blocks_ne_at hB 6 4 rfl
    rfl rfl) hr0) fun m2 H =>
  have fr := H.2.2.2.2.2.1
  have a_ll : ∀ b ∈ ll.addrs, m2.mem b = m.mem b :=
    region_agree hB [1, 6, 3, 4] [l, r, p, t] 0 rfl rfl rfl fr
  have a_lr : ∀ b ∈ lr.addrs, m2.mem b = m.mem b :=
    region_agree hB [1, 6, 3, 4] [l, r, p, t] 2 rfl rfl rfl fr
  have a_rl : ∀ b ∈ rl.addrs, m2.mem b = m.mem b :=
    region_agree hB [1, 6, 3, 4] [l, r, p, t] 5 rfl rfl rfl fr
  have a_rr : ∀ b ∈ rr.addrs, m2.mem b = m.mem b :=
    region_agree hB [1, 6, 3, 4] [l, r, p, t] 7 rfl rfl rfl fr
  have hroot : m2._root = (fill ([]) (.node t cP vt (.node l cl vl ll lr) (.node p ct vP .nil
    (.node r cr vr rl rr)))).top := by
    rw [H.2.2.2.2.2.2.1]
    simp only [fill_L, fill_R, fill_append, fill_nil, tree.top_node]
  have hpath : ShapedPath m2.mem ([]) (some t) :=
    trivial
  have htree : Shaped m2.mem none (.node t cP vt (.node l cl vl ll lr) (.node p ct vP .nil (.node r
    cr vr rl rr))) :=
    ⟨H.2.2.2.1, ⟨H.2.2.1, Shaped.agree hs.2.2.1.2.1 a_ll, Shaped.agree hs.2.2.1.2.2 a_lr⟩, ⟨H.2.1,
      trivial, ⟨H.2.2.2.2.1, Shaped.agree hs.2.2.2.2.2.2.1 a_rl, Shaped.agree hs.2.2.2.2.2.2.2
      a_rr⟩⟩⟩
  ⟨m2, H.1, h.of_perm (perm_swap_adj_succ _) H.2.2.2.2.2.2.2.1 hroot (shaped_fill.2 ⟨hpath,
    htree⟩), ⟨H.2.2.2.2.2.2.2.1, H.2.2.2.2.2.2.2.2.1, H.2.2.2.2.2.2.2.2.2⟩⟩

/-- The cells after `_swap_nodes`, case `adj_pred_root_node`. -/
theorem swap_adj_pred_root_node_cells {m : map K V} {p t r l : Nat}
    {cP ct cr cl : color_type} {vP vt vr vl : Option (K × V)} {q1 q2 q3 q4 : ptr}
    (c_p : m.mem p = some { color := cP, val := vP, l := some t, r := some l, parent := none })
    (c_t : m.mem t = some { color := ct, val := vt, l := some r, r := none, parent := some p })
    (c_r : m.mem r = some { color := cr, val := vr, l := q1, r := q2, parent := some t })
    (c_l : m.mem l = some { color := cl, val := vl, l := q3, r := q4, parent := some p })
    (d_l_t : l ≠ t)
    (d_t_l : t ≠ l)
    (d_p_l : p ≠ l)
    (d_r_p : r ≠ p)
    (d_p_r : p ≠ r)
    (d_r_l : r ≠ l)
    (d_t_r : t ≠ r)
    (d_t_p : t ≠ p)
    (d_p_t : p ≠ t)
    (d_r_t : r ≠ t)
    (d_l_r : l ≠ r)
    (d_l_p : l ≠ p)
    (hr0 : m._root = some p) :
    ∃ m2, map._swap_nodes m (some p) (some t) = some m2 ∧
      m2.mem p = some { color := ct, val := vP, l := some r, r := none, parent := some t } ∧
      m2.mem t = some { color := cP, val := vt, l := some p, r := some l, parent := none } ∧
      m2.mem r = some { color := cr, val := vr, l := q1, r := q2, parent := some p } ∧
      m2.mem l = some { color := cl, val := vl, l := q3, r := q4, parent := some t } ∧
      (∀ b, b ∉ [l, r, p, t] → m2.mem b = m.mem b) ∧
      m2._root = some t ∧
      m2.brk = m.brk ∧
      m2._sz = m._sz ∧
      m2._cmp_k = m._cmp_k :=
  Exists.elim (set_parent_step (m := m) c_l (some t)) fun m1 S1 =>
  have w1 : m1.mem l = some { color := cl, val := vl, l := q3, r := q4, parent := some t } := S1.2.1
  Exists.elim (set_parent_step (m := { m1 with _root := some t }) ((S1.2.2.1 r d_r_l).trans c_r)
    (some p)) fun m2 S2 =>
  have w2 : m2.mem r = some { color := cr, val := vr, l := q1, r := q2, parent := some p } := S2.2.1
  have k2_t := (S2.2.2.1 t d_t_r).trans ((S1.2.2.1 t d_t_l).trans c_t)
  have k2_p := (S2.2.2.1 p d_p_r).trans ((S1.2.2.1 p d_p_l).trans c_p)
  Exists.elim (set_l_step (m := m2) k2_p (some r)) fun m3 S3 =>
  have w3 : m3.mem p = some { color := cP, val := vP, l := some r, r := some l, parent := none } :=
    S3.2.1
  Exists.elim (set_r_step (m := m3) w3 none) fun m4 S4 =>
  have w4 : m4.mem p = some { color := cP, val := vP, l := some r, r := none, parent := none } :=
    S4.2.1
  have k4_t := (S4.2.2.1 t d_t_p).trans ((S3.2.2.1 t d_t_p).trans k2_t)
  Exists.elim (set_parent_step (m := m4) w4 (some t)) fun m5 S5 =>
  have w5 : m5.mem p = some { color := cP, val := vP, l := some r, r := none, parent := some t } :=
    S5.2.1
  have xr5 : m5._root = some t := S5.2.2.2.2.1.trans (S4.2.2.2.2.1.trans (S3.2.2.2.2.1.trans
    (S2.2.2.2.2.1 : m2._root = some t)))
  Exists.elim (set_l_step (m := m5) ((S5.2.2.1 t d_t_p).trans k4_t) (some p)) fun m6 S6 =>
  have w6 : m6.mem t = some { color := ct, val := vt, l := some p, r := none, parent := some p } :=
    S6.2.1
  Exists.elim (set_r_step (m := m6) w6 (some l)) fun m7 S7 =>
  have w7 : m7.mem t = some { color := ct, val := vt, l := some p, r := some l, parent := some p }
    := S7.2.1
  Exists.elim (set_parent_step (m := m7) w7 none) fun m8 S8 =>
  have w8 : m8.mem t = some { color := ct, val := vt, l := some p, r := some l, parent := none } :=
    S8.2.1
  have xr8 : m8._root = some t := S8.2.2.2.2.1.trans (S7.2.2.2.2.1.trans (S6.2.2.2.2.1.trans xr5))
  have k7_p := (S7.2.2.1 p d_p_t).trans ((S6.2.2.1 p d_p_t).trans w5)
  Exists.elim (set_color_step (m := m8) ((S8.2.2.1 p d_p_t).trans k7_p) ct) fun m9 S9 =>
  have w9 : m9.mem p = some { color := ct, val := vP, l := some r, r := none, parent := some t } :=
    S9.2.1
  Exists.elim (set_color_step (m := m9) ((S9.2.2.1 t d_t_p).trans w8) cP) fun m10 S10 =>
  have w10 : m10.mem t = some { color := cP, val := vt, l := some p, r := some l, parent := none }
    := S10.2.1
  have k4_r := (S4.2.2.1 r d_r_p).trans ((S3.2.2.1 r d_r_p).trans w2)
  have k6_r := (S6.2.2.1 r d_r_t).trans ((S5.2.2.1 r d_r_p).trans k4_r)
  have k8_r := (S8.2.2.1 r d_r_t).trans ((S7.2.2.1 r d_r_t).trans k6_r)
  have k10_r := (S10.2.2.1 r d_r_t).trans ((S9.2.2.1 r d_r_p).trans k8_r)
  have k3_l := (S3.2.2.1 l d_l_p).trans ((S2.2.2.1 l d_l_r).trans w1)
  have k5_l := (S5.2.2.1 l d_l_p).trans ((S4.2.2.1 l d_l_p).trans k3_l)
  have k7_l := (S7.2.2.1 l d_l_t).trans ((S6.2.2.1 l d_l_t).trans k5_l)
  have k9_l := (S9.2.2.1 l d_l_p).trans ((S8.2.2.1 l d_l_t).trans k7_l)
  have hop : map._swap_nodes m (some p) (some t) = some m10 := by
    simp only [map._swap_nodes, map._swap_set_parent, map._swap_set_child,
      (get_l_eq (m := m) c_p : get_l m (some p) = some (some t)),
      (get_r_eq (m := m) c_p : get_r m (some p) = some (some l)), d_l_t, d_t_l, S1.1,
      (get_parent_eq (m := m1) ((S1.2.2.1 p d_p_l).trans c_p) : get_parent m1 (some p) = some none),
      ((S1.2.2.2.2.1.trans hr0) : m1._root = some p),
      (get_l_eq (m := { m1 with _root := some t }) ((S1.2.2.1 t d_t_l).trans c_t) : get_l
        { m1 with _root := some t } (some t) = some (some r)),
      d_r_p, d_p_r, S2.1, (get_r_eq (m := m2) k2_t : get_r m2 (some t) = some none),
      (get_parent_eq (m := m2) k2_t : get_parent m2 (some t) = some (some p)),
      (get_l_eq (m := m2) k2_p : get_l m2 (some p) = some (some t)),
      (get_r_eq (m := m2) k2_p : get_r m2 (some p) = some (some l)),
      (get_parent_eq (m := m2) k2_p : get_parent m2 (some p) = some none),
      (get_color_eq (m := m2) k2_p : get_color m2 (some p) = some cP),
      (get_l_eq (m := m2) k2_t : get_l m2 (some t) = some (some r)), S3.1,
      (get_r_eq (m := m3) ((S3.2.2.1 t d_t_p).trans k2_t) : get_r m3 (some t) = some none), S4.1,
      (get_parent_eq (m := m4) k4_t : get_parent m4 (some t) = some (some p)), S5.1, S6.1, S7.1,
      S8.1, (get_color_eq (m := m8) w8 : get_color m8 (some t) = some ct), S9.1, S10.1, hr0,
      bind_eq_ub, pure_eq_some, ub_bind_some, ne_eq, Option.some.injEq, not_false_eq_true,
      not_true_eq_false, and_self, and_true, true_and, and_false, false_and, if_true, if_false,
      ite_true, ite_false, reduceCtorEq, reduceIte, ite_not, not_not, Bool.not_eq_true,
      decide_eq_true_eq, decide_eq_false_iff_not, decide_True, decide_False, Bool.false_eq_true,
      eq_self_iff_true, Option.isSome_some, Option.isSome_none]
  have h_l : ∀ b, b ∉ [l, r, p, t] → b ≠ l := fun b hb e => hb (e ▸ List.Mem.head _)
  have h_r : ∀ b, b ∉ [l, r, p, t] → b ≠ r := fun b hb e => hb (e ▸ List.Mem.tail _ (List.Mem.head
    _))
  have h_p : ∀ b, b ∉ [l, r, p, t] → b ≠ p := fun b hb e => hb (e ▸ List.Mem.tail _ (List.Mem.tail
    _ (List.Mem.head _)))
  have h_t : ∀ b, b ∉ [l, r, p, t] → b ≠ t := fun b hb e => hb (e ▸ List.Mem.tail _ (List.Mem.tail
    _ (List.Mem.tail _ (List.Mem.head _))))
  ⟨m10, hop, ((S10.2.2.1 p d_p_t).trans w9), w10, k10_r, ((S10.2.2.1 l d_l_t).trans k9_l), (fun b
    hb => ((S10.2.2.1 b (h_t b hb)).trans ((S9.2.2.1 b (h_p b hb)).trans ((S8.2.2.1 b (h_t b
    hb)).trans ((S7.2.2.1 b (h_t b hb)).trans ((S6.2.2.1 b (h_t b hb)).trans ((S5.2.2.1 b (h_p b
    hb)).trans ((S4.2.2.1 b (h_p b hb)).trans ((S3.2.2.1 b (h_p b hb)).trans ((S2.2.2.1 b (h_r b
    hb)).trans (S1.2.2.1 b (h_l b hb)))))))))))), (S10.2.2.2.2.1.trans (S9.2.2.2.2.1.trans xr8)),
    (S10.2.2.2.1.trans (S9.2.2.2.1.trans (S8.2.2.2.1.trans (S7.2.2.2.1.trans (S6.2.2.2.1.trans
    (S5.2.2.2.1.trans (S4.2.2.2.1.trans (S3.2.2.2.1.trans (S2.2.2.2.1.trans S1.2.2.2.1))))))))),
    (S10.2.2.2.2.2.1.trans (S9.2.2.2.2.2.1.trans (S8.2.2.2.2.2.1.trans (S7.2.2.2.2.2.1.trans
    (S6.2.2.2.2.2.1.trans (S5.2.2.2.2.2.1.trans (S4.2.2.2.2.2.1.trans (S3.2.2.2.2.2.1.trans
    (S2.2.2.2.2.2.1.trans S1.2.2.2.2.2.1))))))))), (S10.2.2.2.2.2.2.trans (S9.2.2.2.2.2.2.trans
    (S8.2.2.2.2.2.2.trans (S7.2.2.2.2.2.2.trans (S6.2.2.2.2.2.2.trans (S5.2.2.2.2.2.2.trans
    (S4.2.2.2.2.2.2.trans (S3.2.2.2.2.2.2.trans (S2.2.2.2.2.2.2.trans S1.2.2.2.2.2.2)))))))))⟩

/-- Member `_swap_nodes` of a node and its left child, which has no right child. -/
theorem swap_adj_pred_root_node
    {m : map K V} {p t r l : Nat} {cP ct cr cl : color_type} {vP vt vr vl : Option (K × V)}
    {rl rr ll lr : tree K V}
    (h : Rep m (fill ([])
      (.node p cP vP (.node t ct vt (.node r cr vr rl rr) .nil) (.node l cl vl ll lr)))) :
    ∃ m2, map._swap_nodes m (some p) (some t) = some m2 ∧
      Rep m2 (fill ([])
        (.node t cP vt (.node p ct vP (.node r cr vr rl rr) .nil) (.node l cl vl ll lr))) ∧ SameAux m m2 :=
  have hs := shaped_fill.1 h.shaped
  have c_p : m.mem p = some { color := cP, val := vP, l := some t, r := some l, parent := none } :=
    hs.2.1
  have c_t : m.mem t = some { color := ct, val := vt, l := some r, r := none, parent := some p } :=
    hs.2.2.1.1
  have c_r : m.mem r = some { color := cr, val := vr, l := rl.top, r := rr.top, parent := some t }
    := hs.2.2.1.2.1.1
  have c_l : m.mem l = some { color := cl, val := vl, l := ll.top, r := lr.top, parent := some p }
    := hs.2.2.2.1
  have hB : (List.flatten [rl.addrs, [r], rr.addrs, [t], [p], ll.addrs, [l], lr.addrs]).Nodup := by
    have e : (fill ([]) (.node p cP vP (.node t ct vt (.node r cr vr rl rr) .nil) (.node l cl vl ll
      lr))).addrs =
        List.flatten [rl.addrs, [r], rr.addrs, [t], [p], ll.addrs, [l], lr.addrs] := by
      rw [fill_addrs]
      simp [pbefore, pafter, pbefore_append, pafter_append, tree.addrs]
    exact e ▸ h.nodup
  have hr0 : m._root = some p :=
    h.root.trans (by simp only [fill_L, fill_R, fill_append, fill_nil, tree.top_node])
  Exists.elim (swap_adj_pred_root_node_cells c_p c_t c_r c_l (blocks_ne_at hB 6 3 rfl rfl rfl)
    (blocks_ne_at hB 3 6 rfl rfl rfl) (blocks_ne_at hB 4 6 rfl rfl rfl) (blocks_ne_at hB 1 4 rfl
    rfl rfl) (blocks_ne_at hB 4 1 rfl rfl rfl) (blocks_ne_at hB 1 6 rfl rfl rfl) (blocks_ne_at hB 3
    1 rfl rfl rfl) (blocks_ne_at hB 3 4 rfl rfl rfl) (blocks_ne_at hB 4 3 rfl rfl rfl)
    (blocks_ne_at hB 1 3 rfl rfl rfl) (blocks_ne_at hB 6 1 rfl rfl rfl) (blocks_ne_at hB 6 4 rfl
    rfl rfl) hr0) fun m2 H =>
  have fr := H.2.2.2.2.2.1
  have a_rl : ∀ b ∈ rl.addrs, m2.mem b = m.mem b :=
    region_agree hB [6, 1, 4, 3] [l, r, p, t] 0 rfl rfl rfl fr
  have a_rr : ∀ b ∈ rr.addrs, m2.mem b = m.mem b :=
    region_agree hB [6, 1, 4, 3] [l, r, p, t] 2 rfl rfl rfl fr
  have a_ll : ∀ b ∈ ll.addrs, m2.mem b = m.mem b :=
    region_agree hB [6, 1, 4, 3] [l, r, p, t] 5 rfl rfl rfl fr
  have a_lr : ∀ b ∈ lr.addrs, m2.mem b = m.mem b :=
    region_agree hB [6, 1, 4, 3] [l, r, p, t] 7 rfl rfl rfl fr
  have hroot : m2._root = (fill ([]) (.node t cP vt (.node p ct vP (.node r cr vr rl rr) .nil)
    (.node l cl vl ll lr))).top := by
    rw [H.2.2.2.2.2.2.1]
    simp only [fill_L, fill_R, fill_append, fill_nil, tree.top_node]
  have hpath : ShapedPath m2.mem ([]) (some t) :=
    trivial
  have htree : Shaped m2.mem none (.node t cP vt (.node p ct vP (.node r cr vr rl rr) .nil) (.node
    l cl vl ll lr)) :=
    ⟨H.2.2.1, ⟨H.2.1, ⟨H.2.2.2.1, Shaped.agree hs.2.2.1.2.1.2.1 a_rl, Shaped.agree hs.2.2.1.2.1.2.2
      a_rr⟩, trivial⟩, ⟨H.2.2.2.2.1, Shaped.agree hs.2.2.2.2.1 a_ll, Shaped.agree hs.2.2.2.2.2
      a_lr⟩⟩
  ⟨m2, H.1, h.of_perm (perm_swap_adj_pred _) H.2.2.2.2.2.2.2.1 hroot (shaped_fill.2 ⟨hpath,
    htree⟩), ⟨H.2.2.2.2.2.2.2.1, H.2.2.2.2.2.2.2.2.1, H.2.2.2.2.2.2.2.2.2⟩⟩

/-- The cells after `_swap_nodes`, case `far1_succ_root_node`. -/
theorem swap_far1_succ_root_node_cells {m : map K V} {t r k p l : Nat}
    {ct cr ck cP cl : color_type} {vt vr vk vP vl : Option (K × V)} {q1 q2 q3 q4 q5 : ptr}
    (c_t : m.mem t = some { color := ct, val := vt, l := none, r := some r, parent := some k })
    (c_r : m.mem r = some { color := cr, val := vr, l := q1, r := q2, parent := some t })
    (c_k : m.mem k = some { color := ck, val := vk, l := some t, r := q3, parent := some p })
    (c_p : m.mem p = some { color := cP, val := vP, l := some l, r := some k, parent := none })
    (c_l : m.mem l = some { color := cl, val := vl, l := q4, r := q5, parent := some p })
    (d_l_t : l ≠ t)
    (d_t_l : t ≠ l)
    (d_p_l : p ≠ l)
    (d_k_t : k ≠ t)
    (d_t_k : t ≠ k)
    (d_k_l : k ≠ l)
    (d_p_k : p ≠ k)
    (d_r_p : r ≠ p)
    (d_p_r : p ≠ r)
    (d_r_l : r ≠ l)
    (d_r_k : r ≠ k)
    (d_t_r : t ≠ r)
    (d_k_p : k ≠ p)
    (d_k_r : k ≠ r)
    (d_t_p : t ≠ p)
    (d_p_t : p ≠ t)
    (d_r_t : r ≠ t)
    (d_l_k : l ≠ k)
    (d_l_r : l ≠ r)
    (d_l_p : l ≠ p)
    (hr0 : m._root = some p) :
    ∃ m2, map._swap_nodes m (some p) (some t) = some m2 ∧
      m2.mem t = some { color := cP, val := vt, l := some l, r := some k, parent := none } ∧
      m2.mem r = some { color := cr, val := vr, l := q1, r := q2, parent := some p } ∧
      m2.mem k = some { color := ck, val := vk, l := some p, r := q3, parent := some t } ∧
      m2.mem p = some { color := ct, val := vP, l := none, r := some r, parent := some k } ∧
      m2.mem l = some { color := cl, val := vl, l := q4, r := q5, parent := some t } ∧
      (∀ b, b ∉ [l, k, r, p, t] → m2.mem b = m.mem b) ∧
      m2._root = some t ∧
      m2.brk = m.brk ∧
      m2._sz = m._sz ∧
      m2._cmp_k = m._cmp_k :=
  Exists.elim (set_parent_step (m := m) c_l (some t)) fun m1 S1 =>
  have w1 : m1.mem l = some { color := cl, val := vl, l := q4, r := q5, parent := some t } := S1.2.1
  Exists.elim (set_parent_step (m := m1) ((S1.2.2.1 k d_k_l).trans c_k) (some t)) fun m2 S2 =>
  have w2 : m2.mem k = some { color := ck, val := vk, l := some t, r := q3, parent := some t } :=
    S2.2.1
  have k2_p := (S2.2.2.1 p d_p_k).trans ((S1.2.2.1 p d_p_l).trans c_p)
  have k2_t := (S2.2.2.1 t d_t_k).trans ((S1.2.2.1 t d_t_l).trans c_t)
  have k2_r := (S2.2.2.1 r d_r_k).trans ((S1.2.2.1 r d_r_l).trans c_r)
  Exists.elim (set_parent_step (m := { m2 with _root := some t }) k2_r (some p)) fun m3 S3 =>
  have w3 : m3.mem r = some { color := cr, val := vr, l := q1, r := q2, parent := some p } := S3.2.1
  Exists.elim (set_l_step (m := m3) ((S3.2.2.1 k d_k_r).trans w2) (some p)) fun m4 S4 =>
  have w4 : m4.mem k = some { color := ck, val := vk, l := some p, r := q3, parent := some t } :=
    S4.2.1
  have k4_p := (S4.2.2.1 p d_p_k).trans ((S3.2.2.1 p d_p_r).trans k2_p)
  have k4_t := (S4.2.2.1 t d_t_k).trans ((S3.2.2.1 t d_t_r).trans k2_t)
  Exists.elim (set_l_step (m := m4) k4_p none) fun m5 S5 =>
  have w5 : m5.mem p = some { color := cP, val := vP, l := none, r := some k, parent := none } :=
    S5.2.1
  Exists.elim (set_r_step (m := m5) w5 (some r)) fun m6 S6 =>
  have w6 : m6.mem p = some { color := cP, val := vP, l := none, r := some r, parent := none } :=
    S6.2.1
  have xr6 : m6._root = some t := S6.2.2.2.2.1.trans (S5.2.2.2.2.1.trans (S4.2.2.2.2.1.trans
    (S3.2.2.2.2.1 : m3._root = some t)))
  have k6_t := (S6.2.2.1 t d_t_p).trans ((S5.2.2.1 t d_t_p).trans k4_t)
  Exists.elim (set_parent_step (m := m6) w6 (some k)) fun m7 S7 =>
  have w7 : m7.mem p = some { color := cP, val := vP, l := none, r := some r, parent := some k } :=
    S7.2.1
  Exists.elim (set_l_step (m := m7) ((S7.2.2.1 t d_t_p).trans k6_t) (some l)) fun m8 S8 =>
  have w8 : m8.mem t = some { color := ct, val := vt, l := some l, r := some r, parent := some k }
    := S8.2.1
  Exists.elim (set_r_step (m := m8) w8 (some k)) fun m9 S9 =>
  have w9 : m9.mem t = some { color := ct, val := vt, l := some l, r := some k, parent := some k }
    := S9.2.1
  have xr9 : m9._root = some t := S9.2.2.2.2.1.trans (S8.2.2.2.2.1.trans (S7.2.2.2.2.1.trans xr6))
  Exists.elim (set_parent_step (m := m9) w9 none) fun m10 S10 =>
  have w10 : m10.mem t = some { color := ct, val := vt, l := some l, r := some k, parent := none }
    := S10.2.1
  have k9_p := (S9.2.2.1 p d_p_t).trans ((S8.2.2.1 p d_p_t).trans w7)
  Exists.elim (set_color_step (m := m10) ((S10.2.2.1 p d_p_t).trans k9_p) ct) fun m11 S11 =>
  have w11 : m11.mem p = some { color := ct, val := vP, l := none, r := some r, parent := some k }
    := S11.2.1
  Exists.elim (set_color_step (m := m11) ((S11.2.2.1 t d_t_p).trans w10) cP) fun m12 S12 =>
  have w12 : m12.mem t = some { color := cP, val := vt, l := some l, r := some k, parent := none }
    := S12.2.1
  have xr12 : m12._root = some t := S12.2.2.2.2.1.trans (S11.2.2.2.2.1.trans (S10.2.2.2.2.1.trans
    xr9))
  have k5_r := (S5.2.2.1 r d_r_p).trans ((S4.2.2.1 r d_r_k).trans w3)
  have k7_r := (S7.2.2.1 r d_r_p).trans ((S6.2.2.1 r d_r_p).trans k5_r)
  have k9_r := (S9.2.2.1 r d_r_t).trans ((S8.2.2.1 r d_r_t).trans k7_r)
  have k11_r := (S11.2.2.1 r d_r_p).trans ((S10.2.2.1 r d_r_t).trans k9_r)
  have k6_k := (S6.2.2.1 k d_k_p).trans ((S5.2.2.1 k d_k_p).trans w4)
  have k8_k := (S8.2.2.1 k d_k_t).trans ((S7.2.2.1 k d_k_p).trans k6_k)
  have k10_k := (S10.2.2.1 k d_k_t).trans ((S9.2.2.1 k d_k_t).trans k8_k)
  have k12_k := (S12.2.2.1 k d_k_t).trans ((S11.2.2.1 k d_k_p).trans k10_k)
  have k3_l := (S3.2.2.1 l d_l_r).trans ((S2.2.2.1 l d_l_k).trans w1)
  have k5_l := (S5.2.2.1 l d_l_p).trans ((S4.2.2.1 l d_l_k).trans k3_l)
  have k7_l := (S7.2.2.1 l d_l_p).trans ((S6.2.2.1 l d_l_p).trans k5_l)
  have k9_l := (S9.2.2.1 l d_l_t).trans ((S8.2.2.1 l d_l_t).trans k7_l)
  have k11_l := (S11.2.2.1 l d_l_p).trans ((S10.2.2.1 l d_l_t).trans k9_l)
  have hop : map._swap_nodes m (some p) (some t) = some m12 := by
    simp only [map._swap_nodes, map._swap_set_parent, map._swap_set_child,
      (get_l_eq (m := m) c_p : get_l m (some p) = some (some l)), d_l_t, d_t_l, S1.1,
      (get_r_eq (m := m1) ((S1.2.2.1 p d_p_l).trans c_p) : get_r m1 (some p) = some (some k)),
      d_k_t, d_t_k, S2.1, (get_parent_eq (m := m2) k2_p : get_parent m2 (some p) = some none),
      ((S2.2.2.2.2.1.trans (S1.2.2.2.2.1.trans hr0)) : m2._root = some p),
      (get_l_eq (m := { m2 with _root := some t }) k2_t : get_l { m2 with _root := some t } (some
        t) = some none),
      (get_r_eq (m := { m2 with _root := some t }) k2_t : get_r { m2 with _root := some t } (some
        t) = some (some r)),
      d_r_p, d_p_r, S3.1,
      (get_parent_eq (m := m3) ((S3.2.2.1 t d_t_r).trans k2_t) : get_parent m3 (some t) = some
        (some k)),
      d_k_p, d_p_k,
      (get_l_eq (m := m3) ((S3.2.2.1 k d_k_r).trans w2) : get_l m3 (some k) = some (some t)),
      S4.1, (get_l_eq (m := m4) k4_p : get_l m4 (some p) = some (some l)),
      (get_r_eq (m := m4) k4_p : get_r m4 (some p) = some (some k)),
      (get_parent_eq (m := m4) k4_p : get_parent m4 (some p) = some none),
      (get_color_eq (m := m4) k4_p : get_color m4 (some p) = some cP),
      (get_l_eq (m := m4) k4_t : get_l m4 (some t) = some none), S5.1,
      (get_r_eq (m := m5) ((S5.2.2.1 t d_t_p).trans k4_t) : get_r m5 (some t) = some (some r)),
      S6.1, (get_parent_eq (m := m6) k6_t : get_parent m6 (some t) = some (some k)), S7.1, S8.1,
      S9.1, S10.1, (get_color_eq (m := m10) w10 : get_color m10 (some t) = some ct), S11.1,
      S12.1, hr0, bind_eq_ub, pure_eq_some, ub_bind_some, ne_eq, Option.some.injEq,
      not_false_eq_true, not_true_eq_false, and_self, and_true, true_and, and_false, false_and,
      if_true, if_false, ite_true, ite_false, reduceCtorEq, reduceIte, ite_not, not_not,
      Bool.not_eq_true, decide_eq_true_eq, decide_eq_false_iff_not, decide_True, decide_False,
      Bool.false_eq_true, eq_self_iff_true, Option.isSome_some, Option.isSome_none]
  have h_l : ∀ b, b ∉ [l, k, r, p, t] → b ≠ l := fun b hb e => hb (e ▸ List.Mem.head _)
  have h_k : ∀ b, b ∉ [l, k, r, p, t] → b ≠ k := fun b hb e => hb (e ▸ List.Mem.tail _
    (List.Mem.head _))
  have h_r : ∀ b, b ∉ [l, k, r, p, t] → b ≠ r := fun b hb e => hb (e ▸ List.Mem.tail _
    (List.Mem.tail _ (List.Mem.head _)))
  have h_p : ∀ b, b ∉ [l, k, r, p, t] → b ≠ p := fun b hb e => hb (e ▸ List.Mem.tail _
    (List.Mem.tail _ (List.Mem.tail _ (List.Mem.head _))))
  have h_t : ∀ b, b ∉ [l, k, r, p, t] → b ≠ t := fun b hb e => hb (e ▸ List.Mem.tail _
    (List.Mem.tail _ (List.Mem.tail _ (List.Mem.tail _ (List.Mem.head _)))))
  ⟨m12, hop, w12, ((S12.2.2.1 r d_r_t).trans k11_r), k12_k, ((S12.2.2.1 p d_p_t).trans w11),
    ((S12.2.2.1 l d_l_t).trans k11_l), (fun b hb => ((S12.2.2.1 b (h_t b hb)).trans ((S11.2.2.1 b
    (h_p b hb)).trans ((S10.2.2.1 b (h_t b hb)).trans ((S9.2.2.1 b (h_t b hb)).trans ((S8.2.2.1 b
    (h_t b hb)).trans ((S7.2.2.1 b (h_p b hb)).trans ((S6.2.2.1 b (h_p b hb)).trans ((S5.2.2.1 b
    (h_p b hb)).trans ((S4.2.2.1 b (h_k b hb)).trans ((S3.2.2.1 b (h_r b hb)).trans ((S2.2.2.1 b
    (h_k b hb)).trans (S1.2.2.1 b (h_l b hb)))))))))))))), xr12, (S12.2.2.2.1.trans
    (S11.2.2.2.1.trans (S10.2.2.2.1.trans (S9.2.2.2.1.trans (S8.2.2.2.1.trans (S7.2.2.2.1.trans
    (S6.2.2.2.1.trans (S5.2.2.2.1.trans (S4.2.2.2.1.trans (S3.2.2.2.1.trans (S2.2.2.2.1.trans
    S1.2.2.2.1))))))))))), (S12.2.2.2.2.2.1.trans (S11.2.2.2.2.2.1.trans (S10.2.2.2.2.2.1.trans
    (S9.2.2.2.2.2.1.trans (S8.2.2.2.2.2.1.trans (S7.2.2.2.2.2.1.trans (S6.2.2.2.2.2.1.trans
    (S5.2.2.2.2.2.1.trans (S4.2.2.2.2.2.1.trans (S3.2.2.2.2.2.1.trans (S2.2.2.2.2.2.1.trans
    S1.2.2.2.2.2.1))))))))))), (S12.2.2.2.2.2.2.trans (S11.2.2.2.2.2.2.trans (S10.2.2.2.2.2.2.trans
    (S9.2.2.2.2.2.2.trans (S8.2.2.2.2.2.2.trans (S7.2.2.2.2.2.2.trans (S6.2.2.2.2.2.2.trans
    (S5.2.2.2.2.2.2.trans (S4.2.2.2.2.2.2.trans (S3.2.2.2.2.2.2.trans (S2.2.2.2.2.2.2.trans
    S1.2.2.2.2.2.2)))))))))))⟩

/-- Member `_swap_nodes` of a node and the left child of its right child. -/
theorem swap_far1_succ_root_node
    {m : map K V} {t r k p l : Nat} {ct cr ck cP cl : color_type}
    {vt vr vk vP vl : Option (K × V)} {rl rr sk ll lr : tree K V}
    (h : Rep m (fill ((.L k ck vk sk) :: (.R p cP vP (.node l cl vl ll lr)) :: [])
      (.node t ct vt .nil (.node r cr vr rl rr)))) :
    ∃ m2, map._swap_nodes m (some p) (some t) = some m2 ∧
      Rep m2 (fill ((.L k ck vk sk) :: (.R t cP vt (.node l cl vl ll lr)) :: [])
        (.node p ct vP .nil (.node r cr vr rl rr))) ∧ SameAux m m2 :=
  have hs := shaped_fill.1 h.shaped
  have c_t : m.mem t = some { color := ct, val := vt, l := none, r := some r, parent := some k } :=
    hs.2.1
  have c_r : m.mem r = some { color := cr, val := vr, l := rl.top, r := rr.top, parent := some t }
    := hs.2.2.2.1
  have c_k : m.mem k = some { color := ck, val := vk, l := some t, r := sk.top, parent := some p }
    := hs.1.1
  have c_p : m.mem p = some { color := cP, val := vP, l := some l, r := some k, parent := none } :=
    hs.1.2.2.1
  have c_l : m.mem l = some { color := cl, val := vl, l := ll.top, r := lr.top, parent := some p }
    := hs.1.2.2.2.1.1
  have hB : (List.flatten [ll.addrs, [l], lr.addrs, [p], [t], rl.addrs, [r], rr.addrs, [k],
    sk.addrs]).Nodup := by
    have e : (fill ((.L k ck vk sk) :: (.R p cP vP (.node l cl vl ll lr)) :: []) (.node t ct vt
      .nil (.node r cr vr rl rr))).addrs =
        List.flatten [ll.addrs, [l], lr.addrs, [p], [t], rl.addrs, [r], rr.addrs, [k], sk.addrs] :=
          by
      rw [fill_addrs]
      simp [pbefore, pafter, pbefore_append, pafter_append, tree.addrs]
    exact e ▸ h.nodup
  have hr0 : m._root = some p :=
    h.root.trans (by simp only [fill_L, fill_R, fill_append, fill_nil, tree.top_node])
  Exists.elim (swap_far1_succ_root_node_cells c_t c_r c_k c_p c_l (blocks_ne_at hB 1 4 rfl rfl rfl)
    (blocks_ne_at hB 4 1 rfl rfl rfl) (blocks_ne_at hB 3 1 rfl rfl rfl) (blocks_ne_at hB 8 4 rfl
    rfl rfl) (blocks_ne_at hB 4 8 rfl rfl rfl) (blocks_ne_at hB 8 1 rfl rfl rfl) (blocks_ne_at hB 3
    8 rfl rfl rfl) (blocks_ne_at hB 6 3 rfl rfl rfl) (blocks_ne_at hB 3 6 rfl rfl rfl)
    (blocks_ne_at hB 6 1 rfl rfl rfl) (blocks_ne_at hB 6 8 rfl rfl rfl) (blocks_ne_at hB 4 6 rfl
    rfl rfl) (blocks_ne_at hB 8 3 rfl rfl rfl) (blocks_ne_at hB 8 6 rfl rfl rfl) (blocks_ne_at hB 4
    3 rfl rfl rfl) (blocks_ne_at hB 3 4 rfl rfl rfl) (blocks_ne_at hB 6 4 rfl rfl rfl)
    (blocks_ne_at hB 1 8 rfl rfl rfl) (blocks_ne_at hB 1 6 rfl rfl rfl) (blocks_ne_at hB 1 3 rfl
    rfl rfl) hr0) fun m2 H =>
  have fr := H.2.2.2.2.2.2.1
  have a_rl : ∀ b ∈ rl.addrs, m2.mem b = m.mem b :=
    region_agree hB [1, 8, 6, 3, 4] [l, k, r, p, t] 5 rfl rfl rfl fr
  have a_rr : ∀ b ∈ rr.addrs, m2.mem b = m.mem b :=
    region_agree hB [1, 8, 6, 3, 4] [l, k, r, p, t] 7 rfl rfl rfl fr
  have a_sk : ∀ b ∈ sk.addrs, m2.mem b = m.mem b :=
    region_agree hB [1, 8, 6, 3, 4] [l, k, r, p, t] 9 rfl rfl rfl fr
  have a_ll : ∀ b ∈ ll.addrs, m2.mem b = m.mem b :=
    region_agree hB [1, 8, 6, 3, 4] [l, k, r, p, t] 0 rfl rfl rfl fr
  have a_lr : ∀ b ∈ lr.addrs, m2.mem b = m.mem b :=
    region_agree hB [1, 8, 6, 3, 4] [l, k, r, p, t] 2 rfl rfl rfl fr
  have hroot : m2._root = (fill ((.L k ck vk sk) :: (.R t cP vt (.node l cl vl ll lr)) :: [])
    (.node p ct vP .nil (.node r cr vr rl rr))).top := by
    rw [H.2.2.2.2.2.2.2.1]
    simp only [fill_L, fill_R, fill_append, fill_nil, tree.top_node]
  have hpath : ShapedPath m2.mem ((.L k ck vk sk) :: (.R t cP vt (.node l cl vl ll lr)) :: [])
    (some p) :=
    ⟨H.2.2.2.1, Shaped.agree hs.1.2.1 a_sk, ⟨H.2.1, ⟨H.2.2.2.2.2.1, Shaped.agree hs.1.2.2.2.1.2.1
      a_ll, Shaped.agree hs.1.2.2.2.1.2.2 a_lr⟩, trivial⟩⟩
  have htree : Shaped m2.mem (some k) (.node p ct vP .nil (.node r cr vr rl rr)) :=
    ⟨H.2.2.2.2.1, trivial, ⟨H.2.2.1, Shaped.agree hs.2.2.2.2.1 a_rl, Shaped.agree hs.2.2.2.2.2
      a_rr⟩⟩
  ⟨m2, H.1, h.of_perm (perm_swap_far1_succ _) H.2.2.2.2.2.2.2.2.1 hroot (shaped_fill.2 ⟨hpath,
    htree⟩), ⟨H.2.2.2.2.2.2.2.2.1, H.2.2.2.2.2.2.2.2.2.1, H.2.2.2.2.2.2.2.2.2.2⟩⟩

/-- The cells after `_swap_nodes`, case `far2_succ_root_node`. -/
theorem swap_far2_succ_root_node_cells {m : map K V} {t r f k p l : Nat}
    {ct cr cf ck cP cl : color_type} {vt vr vf vk vP vl : Option (K × V)}
    {q1 q2 q3 q4 q5 q6 q7 q8 : ptr}
    (c_t : m.mem t = some { color := ct, val := vt, l := none, r := some r, parent := some f })
    (c_r : m.mem r = some { color := cr, val := vr, l := q1, r := q2, parent := some t })
    (c_f : m.mem f = some { color := cf, val := vf, l := some t, r := q3, parent := q4 })
    (c_k : m.mem k = some { color := ck, val := vk, l := q5, r := q6, parent := some p })
    (c_p : m.mem p = some { color := cP, val := vP, l := some l, r := some k, parent := none })
    (c_l : m.mem l = some { color := cl, val := vl, l := q7, r := q8, parent := some p })
    (d_l_t : l ≠ t)
    (d_t_l : t ≠ l)
    (d_p_l : p ≠ l)
    (d_k_t : k ≠ t)
    (d_t_k : t ≠ k)
    (d_k_l : k ≠ l)
    (d_p_k : p ≠ k)
    (d_r_p : r ≠ p)
    (d_p_r : p ≠ r)
    (d_r_l : r ≠ l)
    (d_r_k : r ≠ k)
    (d_t_r : t ≠ r)
    (d_f_p : f ≠ p)
    (d_p_f : p ≠ f)
    (d_f_l : f ≠ l)
    (d_f_k : f ≠ k)
    (d_f_r : f ≠ r)
    (d_t_f : t ≠ f)
    (d_t_p : t ≠ p)
    (d_p_t : p ≠ t)
    (d_r_f : r ≠ f)
    (d_r_t : r ≠ t)
    (d_f_t : f ≠ t)
    (d_k_r : k ≠ r)
    (d_k_f : k ≠ f)
    (d_k_p : k ≠ p)
    (d_l_k : l ≠ k)
    (d_l_r : l ≠ r)
    (d_l_f : l ≠ f)
    (d_l_p : l ≠ p)
    (hr0 : m._root = some p) :
    ∃ m2, map._swap_nodes m (some p) (some t) = some m2 ∧
      m2.mem t = some { color := cP, val := vt, l := some l, r := some k, parent := none } ∧
      m2.mem r = some { color := cr, val := vr, l := q1, r := q2, parent := some p } ∧
      m2.mem f = some { color := cf, val := vf, l := some p, r := q3, parent := q4 } ∧
      m2.mem k = some { color := ck, val := vk, l := q5, r := q6, parent := some t } ∧
      m2.mem p = some { color := ct, val := vP, l := none, r := some r, parent := some f } ∧
      m2.mem l = some { color := cl, val := vl, l := q7, r := q8, parent := some t } ∧
      (∀ b, b ∉ [l, k, r, f, p, t] → m2.mem b = m.mem b) ∧
      m2._root = some t ∧
      m2.brk = m.brk ∧
      m2._sz = m._sz ∧
      m2._cmp_k = m._cmp_k :=
  Exists.elim (set_parent_step (m := m) c_l (some t)) fun m1 S1 =>
  have w1 : m1.mem l = some { color := cl, val := vl, l := q7, r := q8, parent := some t } := S1.2.1
  Exists.elim (set_parent_step (m := m1) ((S1.2.2.1 k d_k_l).trans c_k) (some t)) fun m2 S2 =>
  have w2 : m2.mem k = some { color := ck, val := vk, l := q5, r := q6, parent := some t } := S2.2.1
  have k2_p := (S2.2.2.1 p d_p_k).trans ((S1.2.2.1 p d_p_l).trans c_p)
  have k2_t := (S2.2.2.1 t d_t_k).trans ((S1.2.2.1 t d_t_l).trans c_t)
  have k2_r := (S2.2.2.1 r d_r_k).trans ((S1.2.2.1 r d_r_l).trans c_r)
  Exists.elim (set_parent_step (m := { m2 with _root := some t }) k2_r (some p)) fun m3 S3 =>
  have w3 : m3.mem r = some { color := cr, val := vr, l := q1, r := q2, parent := some p } := S3.2.1
  have k2_f := (S2.2.2.1 f d_f_k).trans ((S1.2.2.1 f d_f_l).trans c_f)
  Exists.elim (set_l_step (m := m3) ((S3.2.2.1 f d_f_r).trans k2_f) (some p)) fun m4 S4 =>
  have w4 : m4.mem f = some { color := cf, val := vf, l := some p, r := q3, parent := q4 } := S4.2.1
  have k4_p := (S4.2.2.1 p d_p_f).trans ((S3.2.2.1 p d_p_r).trans k2_p)
  have k4_t := (S4.2.2.1 t d_t_f).trans ((S3.2.2.1 t d_t_r).trans k2_t)
  Exists.elim (set_l_step (m := m4) k4_p none) fun m5 S5 =>
  have w5 : m5.mem p = some { color := cP, val := vP, l := none, r := some k, parent := none } :=
    S5.2.1
  Exists.elim (set_r_step (m := m5) w5 (some r)) fun m6 S6 =>
  have w6 : m6.mem p = some { color := cP, val := vP, l := none, r := some r, parent := none } :=
    S6.2.1
  have xr6 : m6._root = some t := S6.2.2.2.2.1.trans (S5.2.2.2.2.1.trans (S4.2.2.2.2.1.trans
    (S3.2.2.2.2.1 : m3._root = some t)))
  have k6_t := (S6.2.2.1 t d_t_p).trans ((S5.2.2.1 t d_t_p).trans k4_t)
  Exists.elim (set_parent_step (m := m6) w6 (some f)) fun m7 S7 =>
  have w7 : m7.mem p = some { color := cP, val := vP, l := none, r := some r, parent := some f } :=
    S7.2.1
  Exists.elim (set_l_step (m := m7) ((S7.2.2.1 t d_t_p).trans k6_t) (some l)) fun m8 S8 =>
  have w8 : m8.mem t = some { color := ct, val := vt, l := some l, r := some r, parent := some f }
    := S8.2.1
  Exists.elim (set_r_step (m := m8) w8 (some k)) fun m9 S9 =>
  have w9 : m9.mem t = some { color := ct, val := vt, l := some l, r := some k, parent := some f }
    := S9.2.1
  have xr9 : m9._root = some t := S9.2.2.2.2.1.trans (S8.2.2.2.2.1.trans (S7.2.2.2.2.1.trans xr6))
  Exists.elim (set_parent_step (m := m9) w9 none) fun m10 S10 =>
  have w10 : m10.mem t = some { color := ct, val := vt, l := some l, r := some k, parent := none }
    := S10.2.1
  have k9_p := (S9.2.2.1 p d_p_t).trans ((S8.2.2.1 p d_p_t).trans w7)
  Exists.elim (set_color_step (m := m10) ((S10.2.2.1 p d_p_t).trans k9_p) ct) fun m11 S11 =>
  have w11 : m11.mem p = some { color := ct, val := vP, l := none, r := some r, parent := some f }
    := S11.2.1
  Exists.elim (set_color_step (m := m11) ((S11.2.2.1 t d_t_p).trans w10) cP) fun m12 S12 =>
  have w12 : m12.mem t = some { color := cP, val := vt, l := some l, r := some k, parent := none }
    := S12.2.1
  have xr12 : m12._root = some t := S12.2.2.2.2.1.trans (S11.2.2.2.2.1.trans (S10.2.2.2.2.1.trans
    xr9))
  have k5_r := (S5.2.2.1 r d_r_p).trans ((S4.2.2.1 r d_r_f).trans w3)
  have k7_r := (S7.2.2.1 r d_r_p).trans ((S6.2.2.1 r d_r_p).trans k5_r)
  have k9_r := (S9.2.2.1 r d_r_t).trans ((S8.2.2.1 r d_r_t).trans k7_r)
  have k11_r := (S11.2.2.1 r d_r_p).trans ((S10.2.2.1 r d_r_t).trans k9_r)
  have k6_f := (S6.2.2.1 f d_f_p).trans ((S5.2.2.1 f d_f_p).trans w4)
  have k8_f := (S8.2.2.1 f d_f_t).trans ((S7.2.2.1 f d_f_p).trans k6_f)
  have k10_f := (S10.2.2.1 f d_f_t).trans ((S9.2.2.1 f d_f_t).trans k8_f)
  have k12_f := (S12.2.2.1 f d_f_t).trans ((S11.2.2.1 f d_f_p).trans k10_f)
  have k4_k := (S4.2.2.1 k d_k_f).trans ((S3.2.2.1 k d_k_r).trans w2)
  have k6_k := (S6.2.2.1 k d_k_p).trans ((S5.2.2.1 k d_k_p).trans k4_k)
  have k8_k := (S8.2.2.1 k d_k_t).trans ((S7.2.2.1 k d_k_p).trans k6_k)
  have k10_k := (S10.2.2.1 k d_k_t).trans ((S9.2.2.1 k d_k_t).trans k8_k)
  have k12_k := (S12.2.2.1 k d_k_t).trans ((S11.2.2.1 k d_k_p).trans k10_k)
  have k3_l := (S3.2.2.1 l d_l_r).trans ((S2.2.2.1 l d_l_k).trans w1)
  have k5_l := (S5.2.2.1 l d_l_p).trans ((S4.2.2.1 l d_l_f).trans k3_l)
  have k7_l := (S7.2.2.1 l d_l_p).trans ((S6.2.2.1 l d_l_p).trans k5_l)
  have k9_l := (S9.2.2.1 l d_l_t).trans ((S8.2.2.1 l d_l_t).trans k7_l)
  have k11_l := (S11.2.2.1 l d_l_p).trans ((S10.2.2.1 l d_l_t).trans k9_l)
  have hop : map._swap_nodes m (some p) (some t) = some m12 := by
    simp only [map._swap_nodes, map._swap_set_parent, map._swap_set_child,
      (get_l_eq (m := m) c_p : get_l m (some p) = some (some l)), d_l_t, d_t_l, S1.1,
      (get_r_eq (m := m1) ((S1.2.2.1 p d_p_l).trans c_p) : get_r m1 (some p) = some (some k)),
      d_k_t, d_t_k, S2.1, (get_parent_eq (m := m2) k2_p : get_parent m2 (some p) = some none),
      ((S2.2.2.2.2.1.trans (S1.2.2.2.2.1.trans hr0)) : m2._root = some p),
      (get_l_eq (m := { m2 with _root := some t }) k2_t : get_l { m2 with _root := some t } (some
        t) = some none),
      (get_r_eq (m := { m2 with _root := some t }) k2_t : get_r { m2 with _root := some t } (some
        t) = some (some r)),
      d_r_p, d_p_r, S3.1,
      (get_parent_eq (m := m3) ((S3.2.2.1 t d_t_r).trans k2_t) : get_parent m3 (some t) = some
        (some f)),
      d_f_p, d_p_f,
      (get_l_eq (m := m3) ((S3.2.2.1 f d_f_r).trans k2_f) : get_l m3 (some f) = some (some t)),
      S4.1, (get_l_eq (m := m4) k4_p : get_l m4 (some p) = some (some l)),
      (get_r_eq (m := m4) k4_p : get_r m4 (some p) = some (some k)),
      (get_parent_eq (m := m4) k4_p : get_parent m4 (some p) = some none),
      (get_color_eq (m := m4) k4_p : get_color m4 (some p) = some cP),
      (get_l_eq (m := m4) k4_t : get_l m4 (some t) = some none), S5.1,
      (get_r_eq (m := m5) ((S5.2.2.1 t d_t_p).trans k4_t) : get_r m5 (some t) = some (some r)),
      S6.1, (get_parent_eq (m := m6) k6_t : get_parent m6 (some t) = some (some f)), S7.1, S8.1,
      S9.1, S10.1, (get_color_eq (m := m10) w10 : get_color m10 (some t) = some ct), S11.1,
      S12.1, hr0, bind_eq_ub, pure_eq_some, ub_bind_some, ne_eq, Option.some.injEq,
      not_false_eq_true, not_true_eq_false, and_self, and_true, true_and, and_false, false_and,
      if_true, if_false, ite_true, ite_false, reduceCtorEq, reduceIte, ite_not, not_not,
      Bool.not_eq_true, decide_eq_true_eq, decide_eq_false_iff_not, decide_True, decide_False,
      Bool.false_eq_true, eq_self_iff_true, Option.isSome_some, Option.isSome_none]
  have h_l : ∀ b, b ∉ [l, k, r, f, p, t] → b ≠ l := fun b hb e => hb (e ▸ List.Mem.head _)
  have h_k : ∀ b, b ∉ [l, k, r, f, p, t] → b ≠ k := fun b hb e => hb (e ▸ List.Mem.tail _
    (List.Mem.head _))
  have h_r : ∀ b, b ∉ [l, k, r, f, p, t] → b ≠ r := fun b hb e => hb (e ▸ List.Mem.tail _
    (List.Mem.tail _ (List.Mem.head _)))
  have h_f : ∀ b, b ∉ [l, k, r, f, p, t] → b ≠ f := fun b hb e => hb (e ▸ List.Mem.tail _
    (List.Mem.tail _ (List.Mem.tail _ (List.Mem.head _))))
  have h_p : ∀ b, b ∉ [l, k, r, f, p, t] → b ≠ p := fun b hb e => hb (e ▸ List.Mem.tail _
    (List.Mem.tail _ (List.Mem.tail _ (List.Mem.tail _ (List.Mem.head _)))))
  have h_t : ∀ b, b ∉ [l, k, r, f, p, t] → b ≠ t := fun b hb e => hb (e ▸ List.Mem.tail _
    (List.Mem.tail _ (List.Mem.tail _ (List.Mem.tail _ (List.Mem.tail _ (List.Mem.head _))))))
  ⟨m12, hop, w12, ((S12.2.2.1 r d_r_t).trans k11_r), k12_f, k12_k, ((S12.2.2.1 p d_p_t).trans w11),
    ((S12.2.2.1 l d_l_t).trans k11_l), (fun b hb => ((S12.2.2.1 b (h_t b hb)).trans ((S11.2.2.1 b
    (h_p b hb)).trans ((S10.2.2.1 b (h_t b hb)).trans ((S9.2.2.1 b (h_t b hb)).trans ((S8.2.2.1 b
    (h_t b hb)).trans ((S7.2.2.1 b (h_p b hb)).trans ((S6.2.2.1 b (h_p b hb)).trans ((S5.2.2.1 b
    (h_p b hb)).trans ((S4.2.2.1 b (h_f b hb)).trans ((S3.2.2.1 b (h_r b hb)).trans ((S2.2.2.1 b
    (h_k b hb)).trans (S1.2.2.1 b (h_l b hb)))))))))))))), xr12, (S12.2.2.2.1.trans
    (S11.2.2.2.1.trans (S10.2.2.2.1.trans (S9.2.2.2.1.trans (S8.2.2.2.1.trans (S7.2.2.2.1.trans
    (S6.2.2.2.1.trans (S5.2.2.2.1.trans (S4.2.2.2.1.trans (S3.2.2.2.1.trans (S2.2.2.2.1.trans
    S1.2.2.2.1))))))))))), (S12.2.2.2.2.2.1.trans (S11.2.2.2.2.2.1.trans (S10.2.2.2.2.2.1.trans
    (S9.2.2.2.2.2.1.trans (S8.2.2.2.2.2.1.trans (S7.2.2.2.2.2.1.trans (S6.2.2.2.2.2.1.trans
    (S5.2.2.2.2.2.1.trans (S4.2.2.2.2.2.1.trans (S3.2.2.2.2.2.1.trans (S2.2.2.2.2.2.1.trans
    S1.2.2.2.2.2.1))))))))))), (S12.2.2.2.2.2.2.trans (S11.2.2.2.2.2.2.trans (S10.2.2.2.2.2.2.trans
    (S9.2.2.2.2.2.2.trans (S8.2.2.2.2.2.2.trans (S7.2.2.2.2.2.2.trans (S6.2.2.2.2.2.2.trans
    (S5.2.2.2.2.2.2.trans (S4.2.2.2.2.2.2.trans (S3.2.2.2.2.2.2.trans (S2.2.2.2.2.2.2.trans
    S1.2.2.2.2.2.2)))))))))))⟩

/-- Member `_swap_nodes` of a node and a left descendant of its right child. -/
theorem swap_far2_succ_root_node
    {m : map K V} {t r f k p l : Nat} {ct cr cf ck cP cl : color_type}
    {vt vr vf vk vP vl : Option (K × V)} {rl rr sf sk ll lr : tree K V} {rm : List (frame K V)}
    (h : Rep m (fill ((.L f cf vf sf) :: (rm ++ (.L k ck vk sk) :: (.R p cP vP (.node l cl vl ll lr)) :: []))
      (.node t ct vt .nil (.node r cr vr rl rr)))) :
    ∃ m2, map._swap_nodes m (some p) (some t) = some m2 ∧
      Rep m2 (fill ((.L f cf vf sf) :: (rm ++ (.L k ck vk sk) :: (.R t cP vt (.node l cl vl ll lr)) :: []))
        (.node p ct vP .nil (.node r cr vr rl rr))) ∧ SameAux m m2 :=
  have hs := shaped_fill.1 h.shaped
  have c_t : m.mem t = some { color := ct, val := vt, l := none, r := some r, parent := some f } :=
    hs.2.1
  have c_r : m.mem r = some { color := cr, val := vr, l := rl.top, r := rr.top, parent := some t }
    := hs.2.2.2.1
  have c_f : m.mem f = some { color := cf, val := vf, l := some t, r := sf.top, parent := ptop ((rm
    ++ (.L k ck vk sk) :: (.R p cP vP (.node l cl vl ll lr)) :: [])) } := hs.1.1
  have s_rm := hs.1.2.2
  Exists.elim (ShapedPath.drop s_rm) fun hh sp2 =>
  have c_k : m.mem k = some { color := ck, val := vk, l := hh, r := sk.top, parent := some p } :=
    sp2.1
  have c_p : m.mem p = some { color := cP, val := vP, l := some l, r := some k, parent := none } :=
    sp2.2.2.1
  have c_l : m.mem l = some { color := cl, val := vl, l := ll.top, r := lr.top, parent := some p }
    := sp2.2.2.2.1.1
  have hB : (List.flatten [ll.addrs, [l], lr.addrs, [p], (pbefore rm).map Prod.fst, [t], rl.addrs,
    [r], rr.addrs, [f], sf.addrs, (pafter rm).map Prod.fst, [k], sk.addrs]).Nodup := by
    have e : (fill ((.L f cf vf sf) :: (rm ++ (.L k ck vk sk) :: (.R p cP vP (.node l cl vl ll lr))
      :: [])) (.node t ct vt .nil (.node r cr vr rl rr))).addrs =
        List.flatten [ll.addrs, [l], lr.addrs, [p], (pbefore rm).map Prod.fst, [t], rl.addrs, [r],
          rr.addrs, [f], sf.addrs, (pafter rm).map Prod.fst, [k], sk.addrs] := by
      rw [fill_addrs]
      simp [pbefore, pafter, pbefore_append, pafter_append, tree.addrs]
    exact e ▸ h.nodup
  have hr0 : m._root = some p :=
    h.root.trans (by simp only [fill_L, fill_R, fill_append, fill_nil, tree.top_node])
  Exists.elim (swap_far2_succ_root_node_cells c_t c_r c_f c_k c_p c_l (blocks_ne_at hB 1 5 rfl rfl
    rfl) (blocks_ne_at hB 5 1 rfl rfl rfl) (blocks_ne_at hB 3 1 rfl rfl rfl) (blocks_ne_at hB 12 5
    rfl rfl rfl) (blocks_ne_at hB 5 12 rfl rfl rfl) (blocks_ne_at hB 12 1 rfl rfl rfl)
    (blocks_ne_at hB 3 12 rfl rfl rfl) (blocks_ne_at hB 7 3 rfl rfl rfl) (blocks_ne_at hB 3 7 rfl
    rfl rfl) (blocks_ne_at hB 7 1 rfl rfl rfl) (blocks_ne_at hB 7 12 rfl rfl rfl) (blocks_ne_at hB
    5 7 rfl rfl rfl) (blocks_ne_at hB 9 3 rfl rfl rfl) (blocks_ne_at hB 3 9 rfl rfl rfl)
    (blocks_ne_at hB 9 1 rfl rfl rfl) (blocks_ne_at hB 9 12 rfl rfl rfl) (blocks_ne_at hB 9 7 rfl
    rfl rfl) (blocks_ne_at hB 5 9 rfl rfl rfl) (blocks_ne_at hB 5 3 rfl rfl rfl) (blocks_ne_at hB 3
    5 rfl rfl rfl) (blocks_ne_at hB 7 9 rfl rfl rfl) (blocks_ne_at hB 7 5 rfl rfl rfl)
    (blocks_ne_at hB 9 5 rfl rfl rfl) (blocks_ne_at hB 12 7 rfl rfl rfl) (blocks_ne_at hB 12 9 rfl
    rfl rfl) (blocks_ne_at hB 12 3 rfl rfl rfl) (blocks_ne_at hB 1 12 rfl rfl rfl) (blocks_ne_at hB
    1 7 rfl rfl rfl) (blocks_ne_at hB 1 9 rfl rfl rfl) (blocks_ne_at hB 1 3 rfl rfl rfl) hr0) fun
    m2 H =>
  have fr := H.2.2.2.2.2.2.2.1
  have a_rl : ∀ b ∈ rl.addrs, m2.mem b = m.mem b :=
    region_agree hB [1, 12, 7, 9, 3, 5] [l, k, r, f, p, t] 6 rfl rfl rfl fr
  have a_rr : ∀ b ∈ rr.addrs, m2.mem b = m.mem b :=
    region_agree hB [1, 12, 7, 9, 3, 5] [l, k, r, f, p, t] 8 rfl rfl rfl fr
  have a_sf : ∀ b ∈ sf.addrs, m2.mem b = m.mem b :=
    region_agree hB [1, 12, 7, 9, 3, 5] [l, k, r, f, p, t] 10 rfl rfl rfl fr
  have a_rm : ∀ b ∈ paddrs rm, m2.mem b = m.mem b :=
    paddrs_agree (region_agree hB [1, 12, 7, 9, 3, 5] [l, k, r, f, p, t] 4 rfl rfl rfl fr)
      (region_agree hB [1, 12, 7, 9, 3, 5] [l, k, r, f, p, t] 11 rfl rfl rfl fr)
  have a_sk : ∀ b ∈ sk.addrs, m2.mem b = m.mem b :=
    region_agree hB [1, 12, 7, 9, 3, 5] [l, k, r, f, p, t] 13 rfl rfl rfl fr
  have a_ll : ∀ b ∈ ll.addrs, m2.mem b = m.mem b :=
    region_agree hB [1, 12, 7, 9, 3, 5] [l, k, r, f, p, t] 0 rfl rfl rfl fr
  have a_lr : ∀ b ∈ lr.addrs, m2.mem b = m.mem b :=
    region_agree hB [1, 12, 7, 9, 3, 5] [l, k, r, f, p, t] 2 rfl rfl rfl fr
  have ep_f : ptop ((rm ++ (.L k ck vk sk) :: (.R t cP vt (.node l cl vl ll lr)) :: [])) = ptop
    ((rm ++ (.L k ck vk sk) :: (.R p cP vP (.node l cl vl ll lr)) :: [])) :=
    ptop_append_cons rm _ _ rfl
  have hroot : m2._root = (fill ((.L f cf vf sf) :: (rm ++ (.L k ck vk sk) :: (.R t cP vt (.node l
    cl vl ll lr)) :: [])) (.node p ct vP .nil (.node r cr vr rl rr))).top := by
    rw [H.2.2.2.2.2.2.2.2.1]
    simp only [fill_L, fill_R, fill_append, fill_nil, tree.top_node]
  have hpath : ShapedPath m2.mem ((.L f cf vf sf) :: (rm ++ (.L k ck vk sk) :: (.R t cP vt (.node l
    cl vl ll lr)) :: [])) (some p) :=
    ⟨(by rw [ep_f]; exact H.2.2.2.1), Shaped.agree hs.1.2.1 a_sf, ShapedPath.splice_L s_rm a_rm c_k
      rfl (⟨H.2.2.2.2.1, Shaped.agree sp2.2.1 a_sk, ⟨H.2.1, ⟨H.2.2.2.2.2.2.1, Shaped.agree
      sp2.2.2.2.1.2.1 a_ll, Shaped.agree sp2.2.2.2.1.2.2 a_lr⟩, trivial⟩⟩)⟩
  have htree : Shaped m2.mem (some f) (.node p ct vP .nil (.node r cr vr rl rr)) :=
    ⟨H.2.2.2.2.2.1, trivial, ⟨H.2.2.1, Shaped.agree hs.2.2.2.2.1 a_rl, Shaped.agree hs.2.2.2.2.2
      a_rr⟩⟩
  ⟨m2, H.1, h.of_perm (perm_swap_far2_succ _) H.2.2.2.2.2.2.2.2.2.1 hroot (shaped_fill.2 ⟨hpath,
    htree⟩), ⟨H.2.2.2.2.2.2.2.2.2.1, H.2.2.2.2.2.2.2.2.2.2.1, H.2.2.2.2.2.2.2.2.2.2.2⟩⟩

/-- The cells after `_swap_nodes`, case `adj_succ_L_nil`. -/
theorem swap_adj_succ_L_nil_cells {m : map K V} {p l t g : Nat}
    {cP cl ct cg : color_type} {vP vl vt vg : Option (K × V)} {q1 q2 q3 q4 : ptr}
    (c_p : m.mem p = some { color := cP, val := vP, l := some l, r := some t, parent := some g })
    (c_l : m.mem l = some { color := cl, val := vl, l := q1, r := q2, parent := some p })
    (c_t : m.mem t = some { color := ct, val := vt, l := none, r := none, parent := some p })
    (c_g : m.mem g = some { color := cg, val := vg, l := some p, r := q3, parent := q4 })
    (d_l_t : l ≠ t)
    (d_t_l : t ≠ l)
    (d_p_l : p ≠ l)
    (d_g_t : g ≠ t)
    (d_t_g : t ≠ g)
    (d_g_l : g ≠ l)
    (d_p_g : p ≠ g)
    (d_t_p : t ≠ p)
    (d_p_t : p ≠ t)
    (d_l_g : l ≠ g)
    (d_l_p : l ≠ p)
    (d_g_p : g ≠ p)
    (hr_p : some p ≠ m._root)
    (hr_t : some t ≠ m._root) :
    ∃ m2, map._swap_nodes m (some p) (some t) = some m2 ∧
      m2.mem p = some { color := ct, val := vP, l := none, r := none, parent := some t } ∧
      m2.mem l = some { color := cl, val := vl, l := q1, r := q2, parent := some t } ∧
      m2.mem t = some { color := cP, val := vt, l := some l, r := some p, parent := some g } ∧
      m2.mem g = some { color := cg, val := vg, l := some t, r := q3, parent := q4 } ∧
      (∀ b, b ∉ [l, g, p, t] → m2.mem b = m.mem b) ∧
      m2._root = m._root ∧
      m2.brk = m.brk ∧
      m2._sz = m._sz ∧
      m2._cmp_k = m._cmp_k :=
  have hr0 : m._root = m._root := rfl
  Exists.elim (set_parent_step (m := m) c_l (some t)) fun m1 S1 =>
  have w1 : m1.mem l = some { color := cl, val := vl, l := q1, r := q2, parent := some t } := S1.2.1
  Exists.elim (set_l_step (m := m1) ((S1.2.2.1 g d_g_l).trans c_g) (some t)) fun m2 S2 =>
  have w2 : m2.mem g = some { color := cg, val := vg, l := some t, r := q3, parent := q4 } := S2.2.1
  have k2_t := (S2.2.2.1 t d_t_g).trans ((S1.2.2.1 t d_t_l).trans c_t)
  have k2_p := (S2.2.2.1 p d_p_g).trans ((S1.2.2.1 p d_p_l).trans c_p)
  Exists.elim (set_l_step (m := m2) k2_p none) fun m3 S3 =>
  have w3 : m3.mem p = some { color := cP, val := vP, l := none, r := some t, parent := some g } :=
    S3.2.1
  have xr3 : m3._root = m._root := S3.2.2.2.2.1.trans (S2.2.2.2.2.1.trans (S1.2.2.2.2.1.trans hr0))
  Exists.elim (set_r_step (m := m3) w3 none) fun m4 S4 =>
  have w4 : m4.mem p = some { color := cP, val := vP, l := none, r := none, parent := some g } :=
    S4.2.1
  have k4_t := (S4.2.2.1 t d_t_p).trans ((S3.2.2.1 t d_t_p).trans k2_t)
  Exists.elim (set_parent_step (m := m4) w4 (some t)) fun m5 S5 =>
  have w5 : m5.mem p = some { color := cP, val := vP, l := none, r := none, parent := some t } :=
    S5.2.1
  Exists.elim (set_l_step (m := m5) ((S5.2.2.1 t d_t_p).trans k4_t) (some l)) fun m6 S6 =>
  have w6 : m6.mem t = some { color := ct, val := vt, l := some l, r := none, parent := some p } :=
    S6.2.1
  have xr6 : m6._root = m._root := S6.2.2.2.2.1.trans (S5.2.2.2.2.1.trans (S4.2.2.2.2.1.trans xr3))
  Exists.elim (set_r_step (m := m6) w6 (some p)) fun m7 S7 =>
  have w7 : m7.mem t = some { color := ct, val := vt, l := some l, r := some p, parent := some p }
    := S7.2.1
  Exists.elim (set_parent_step (m := m7) w7 (some g)) fun m8 S8 =>
  have w8 : m8.mem t = some { color := ct, val := vt, l := some l, r := some p, parent := some g }
    := S8.2.1
  have k7_p := (S7.2.2.1 p d_p_t).trans ((S6.2.2.1 p d_p_t).trans w5)
  Exists.elim (set_color_step (m := m8) ((S8.2.2.1 p d_p_t).trans k7_p) ct) fun m9 S9 =>
  have w9 : m9.mem p = some { color := ct, val := vP, l := none, r := none, parent := some t } :=
    S9.2.1
  have xr9 : m9._root = m._root := S9.2.2.2.2.1.trans (S8.2.2.2.2.1.trans (S7.2.2.2.2.1.trans xr6))
  Exists.elim (set_color_step (m := m9) ((S9.2.2.1 t d_t_p).trans w8) cP) fun m10 S10 =>
  have w10 : m10.mem t = some { color := cP, val := vt, l := some l, r := some p, parent := some g
    } := S10.2.1
  have k3_l := (S3.2.2.1 l d_l_p).trans ((S2.2.2.1 l d_l_g).trans w1)
  have k5_l := (S5.2.2.1 l d_l_p).trans ((S4.2.2.1 l d_l_p).trans k3_l)
  have k7_l := (S7.2.2.1 l d_l_t).trans ((S6.2.2.1 l d_l_t).trans k5_l)
  have k9_l := (S9.2.2.1 l d_l_p).trans ((S8.2.2.1 l d_l_t).trans k7_l)
  have k4_g := (S4.2.2.1 g d_g_p).trans ((S3.2.2.1 g d_g_p).trans w2)
  have k6_g := (S6.2.2.1 g d_g_t).trans ((S5.2.2.1 g d_g_p).trans k4_g)
  have k8_g := (S8.2.2.1 g d_g_t).trans ((S7.2.2.1 g d_g_t).trans k6_g)
  have k10_g := (S10.2.2.1 g d_g_t).trans ((S9.2.2.1 g d_g_p).trans k8_g)
  have hop : map._swap_nodes m (some p) (some t) = some m10 := by
    simp only [map._swap_nodes, map._swap_set_parent, map._swap_set_child,
      (get_l_eq (m := m) c_p : get_l m (some p) = some (some l)), d_l_t, d_t_l, S1.1,
      (get_r_eq (m := m1) ((S1.2.2.1 p d_p_l).trans c_p) : get_r m1 (some p) = some (some t)),
      (get_parent_eq (m := m1) ((S1.2.2.1 p d_p_l).trans c_p) : get_parent m1 (some p) = some (some
        g)),
      d_g_t, d_t_g,
      (get_l_eq (m := m1) ((S1.2.2.1 g d_g_l).trans c_g) : get_l m1 (some g) = some (some p)),
      S2.1, ((S2.2.2.2.2.1.trans (S1.2.2.2.2.1.trans hr0)) : m2._root = m._root), hr_p, hr_t,
      (get_l_eq (m := m2) k2_t : get_l m2 (some t) = some none),
      (get_r_eq (m := m2) k2_t : get_r m2 (some t) = some none),
      (get_parent_eq (m := m2) k2_t : get_parent m2 (some t) = some (some p)),
      (get_l_eq (m := m2) k2_p : get_l m2 (some p) = some (some l)),
      (get_r_eq (m := m2) k2_p : get_r m2 (some p) = some (some t)),
      (get_parent_eq (m := m2) k2_p : get_parent m2 (some p) = some (some g)),
      (get_color_eq (m := m2) k2_p : get_color m2 (some p) = some cP),
      (get_l_eq (m := m2) k2_t : get_l m2 (some t) = some none), S3.1,
      (get_r_eq (m := m3) ((S3.2.2.1 t d_t_p).trans k2_t) : get_r m3 (some t) = some none), S4.1,
      (get_parent_eq (m := m4) k4_t : get_parent m4 (some t) = some (some p)), S5.1, S6.1, S7.1,
      S8.1, (get_color_eq (m := m8) w8 : get_color m8 (some t) = some ct), S9.1, S10.1,
      bind_eq_ub, pure_eq_some, ub_bind_some, ne_eq, Option.some.injEq, not_false_eq_true,
      not_true_eq_false, and_self, and_true, true_and, and_false, false_and, if_true, if_false,
      ite_true, ite_false, reduceCtorEq, reduceIte, ite_not, not_not, Bool.not_eq_true,
      decide_eq_true_eq, decide_eq_false_iff_not, decide_True, decide_False, Bool.false_eq_true,
      eq_self_iff_true, Option.isSome_some, Option.isSome_none]
  have h_l : ∀ b, b ∉ [l, g, p, t] → b ≠ l := fun b hb e => hb (e ▸ List.Mem.head _)
  have h_g : ∀ b, b ∉ [l, g, p, t] → b ≠ g := fun b hb e => hb (e ▸ List.Mem.tail _ (List.Mem.head
    _))
  have h_p : ∀ b, b ∉ [l, g, p, t] → b ≠ p := fun b hb e => hb (e ▸ List.Mem.tail _ (List.Mem.tail
    _ (List.Mem.head _)))
  have h_t : ∀ b, b ∉ [l, g, p, t] → b ≠ t := fun b hb e => hb (e ▸ List.Mem.tail _ (List.Mem.tail
    _ (List.Mem.tail _ (List.Mem.head _))))
  ⟨m10, hop, ((S10.2.2.1 p d_p_t).trans w9), ((S10.2.2.1 l d_l_t).trans k9_l), w10, k10_g, (fun b
    hb => ((S10.2.2.1 b (h_t b hb)).trans ((S9.2.2.1 b (h_p b hb)).trans ((S8.2.2.1 b (h_t b
    hb)).trans ((S7.2.2.1 b (h_t b hb)).trans ((S6.2.2.1 b (h_t b hb)).trans ((S5.2.2.1 b (h_p b
    hb)).trans ((S4.2.2.1 b (h_p b hb)).trans ((S3.2.2.1 b (h_p b hb)).trans ((S2.2.2.1 b (h_g b
    hb)).trans (S1.2.2.1 b (h_l b hb)))))))))))), (S10.2.2.2.2.1.trans xr9), (S10.2.2.2.1.trans
    (S9.2.2.2.1.trans (S8.2.2.2.1.trans (S7.2.2.2.1.trans (S6.2.2.2.1.trans (S5.2.2.2.1.trans
    (S4.2.2.2.1.trans (S3.2.2.2.1.trans (S2.2.2.2.1.trans S1.2.2.2.1))))))))),
    (S10.2.2.2.2.2.1.trans (S9.2.2.2.2.2.1.trans (S8.2.2.2.2.2.1.trans (S7.2.2.2.2.2.1.trans
    (S6.2.2.2.2.2.1.trans (S5.2.2.2.2.2.1.trans (S4.2.2.2.2.2.1.trans (S3.2.2.2.2.2.1.trans
    (S2.2.2.2.2.2.1.trans S1.2.2.2.2.2.1))))))))), (S10.2.2.2.2.2.2.trans (S9.2.2.2.2.2.2.trans
    (S8.2.2.2.2.2.2.trans (S7.2.2.2.2.2.2.trans (S6.2.2.2.2.2.2.trans (S5.2.2.2.2.2.2.trans
    (S4.2.2.2.2.2.2.trans (S3.2.2.2.2.2.2.trans (S2.2.2.2.2.2.2.trans S1.2.2.2.2.2.2)))))))))⟩

/-- Member `_swap_nodes` of a node and its right child, which has no left child. -/
theorem swap_adj_succ_L_nil
    {m : map K V} {p l t g : Nat} {cP cl ct cg : color_type} {vP vl vt vg : Option (K × V)}
    {ll lr sg : tree K V} {q : List (frame K V)}
    (h : Rep m (fill ((.L g cg vg sg) :: q)
      (.node p cP vP (.node l cl vl ll lr) (.node t ct vt .nil .nil)))) :
    ∃ m2, map._swap_nodes m (some p) (some t) = some m2 ∧
      Rep m2 (fill ((.L g cg vg sg) :: q)
        (.node t cP vt (.node l cl vl ll lr) (.node p ct vP .nil .nil))) ∧ SameAux m m2 :=
  have hs := shaped_fill.1 h.shaped
  have c_p : m.mem p = some { color := cP, val := vP, l := some l, r := some t, parent := some g }
    := hs.2.1
  have c_l : m.mem l = some { color := cl, val := vl, l := ll.top, r := lr.top, parent := some p }
    := hs.2.2.1.1
  have c_t : m.mem t = some { color := ct, val := vt, l := none, r := none, parent := some p } :=
    hs.2.2.2.1
  have c_g : m.mem g = some { color := cg, val := vg, l := some p, r := sg.top, parent := ptop q }
    := hs.1.1
  have hB : (List.flatten [(pbefore q).map Prod.fst, ll.addrs, [l], lr.addrs, [p], [t], [g],
    sg.addrs, (pafter q).map Prod.fst]).Nodup := by
    have e : (fill ((.L g cg vg sg) :: q) (.node p cP vP (.node l cl vl ll lr) (.node t ct vt .nil
      .nil))).addrs =
        List.flatten [(pbefore q).map Prod.fst, ll.addrs, [l], lr.addrs, [p], [t], [g], sg.addrs,
          (pafter q).map Prod.fst] := by
      rw [fill_addrs]
      simp [pbefore, pafter, pbefore_append, pafter_append, tree.addrs]
    exact e ▸ h.nodup
  have hr_p : some p ≠ m._root := by
    have h0 := h
    simp only [fill_L, fill_R, fill_append] at h0
    exact Rep.ne_root (f := (.L g cg vg sg)) (q := q) h0 (by simp [mem_fill_addrs])
  have hr_t : some t ≠ m._root := by
    have h0 := h
    simp only [fill_L, fill_R, fill_append] at h0
    exact Rep.ne_root (f := (.L g cg vg sg)) (q := q) h0 (by simp [mem_fill_addrs])
  Exists.elim (swap_adj_succ_L_nil_cells c_p c_l c_t c_g (blocks_ne_at hB 2 5 rfl rfl rfl)
    (blocks_ne_at hB 5 2 rfl rfl rfl) (blocks_ne_at hB 4 2 rfl rfl rfl) (blocks_ne_at hB 6 5 rfl
    rfl rfl) (blocks_ne_at hB 5 6 rfl rfl rfl) (blocks_ne_at hB 6 2 rfl rfl rfl) (blocks_ne_at hB 4
    6 rfl rfl rfl) (blocks_ne_at hB 5 4 rfl rfl rfl) (blocks_ne_at hB 4 5 rfl rfl rfl)
    (blocks_ne_at hB 2 6 rfl rfl rfl) (blocks_ne_at hB 2 4 rfl rfl rfl) (blocks_ne_at hB 6 4 rfl
    rfl rfl) hr_p hr_t) fun m2 H =>
  have fr := H.2.2.2.2.2.1
  have a_ll : ∀ b ∈ ll.addrs, m2.mem b = m.mem b :=
    region_agree hB [2, 6, 4, 5] [l, g, p, t] 1 rfl rfl rfl fr
  have a_lr : ∀ b ∈ lr.addrs, m2.mem b = m.mem b :=
    region_agree hB [2, 6, 4, 5] [l, g, p, t] 3 rfl rfl rfl fr
  have a_sg : ∀ b ∈ sg.addrs, m2.mem b = m.mem b :=
    region_agree hB [2, 6, 4, 5] [l, g, p, t] 7 rfl rfl rfl fr
  have a_q : ∀ b ∈ paddrs q, m2.mem b = m.mem b :=
    paddrs_agree (region_agree hB [2, 6, 4, 5] [l, g, p, t] 0 rfl rfl rfl fr)
      (region_agree hB [2, 6, 4, 5] [l, g, p, t] 8 rfl rfl rfl fr)
  have hroot : m2._root = (fill ((.L g cg vg sg) :: q) (.node t cP vt (.node l cl vl ll lr) (.node
    p ct vP .nil .nil))).top := by
    rw [H.2.2.2.2.2.2.1]
    refine h.root.trans ?_
    simp only [fill_L, fill_R, fill_append]
    exact fill_top_congr rfl
  have hpath : ShapedPath m2.mem ((.L g cg vg sg) :: q) (some t) :=
    ⟨H.2.2.2.2.1, Shaped.agree hs.1.2.1 a_sg, ShapedPath.agree_path hs.1.2.2 a_q⟩
  have htree : Shaped m2.mem (some g) (.node t cP vt (.node l cl vl ll lr) (.node p ct vP .nil
    .nil)) :=
    ⟨H.2.2.2.1, ⟨H.2.2.1, Shaped.agree hs.2.2.1.2.1 a_ll, Shaped.agree hs.2.2.1.2.2 a_lr⟩, ⟨H.2.1,
      trivial, trivial⟩⟩
  ⟨m2, H.1, h.of_perm (perm_swap_adj_succ _) H.2.2.2.2.2.2.2.1 hroot (shaped_fill.2 ⟨hpath,
    htree⟩), ⟨H.2.2.2.2.2.2.2.1, H.2.2.2.2.2.2.2.2.1, H.2.2.2.2.2.2.2.2.2⟩⟩

/-- The cells after `_swap_nodes`, case `adj_pred_L_nil`. -/
theorem swap_adj_pred_L_nil_cells {m : map K V} {p t l g : Nat}
    {cP ct cl cg : color_type} {vP vt vl vg : Option (K × V)} {q1 q2 q3 q4 : ptr}
    (c_p : m.mem p = some { color := cP, val := vP, l := some t, r := some l, parent := some g })
    (c_t : m.mem t = some { color := ct, val := vt, l := none, r := none, parent := some p })
    (c_l : m.mem l = some { color := cl, val := vl, l := q1, r := q2, parent := some p })
    (c_g : m.mem g = some { color := cg, val := vg, l := some p, r := q3, parent := q4 })
    (d_l_t : l ≠ t)
    (d_t_l : t ≠ l)
    (d_p_l : p ≠ l)
    (d_g_t : g ≠ t)
    (d_t_g : t ≠ g)
    (d_g_l : g ≠ l)
    (d_p_g : p ≠ g)
    (d_t_p : t ≠ p)
    (d_p_t : p ≠ t)
    (d_l_g : l ≠ g)
    (d_l_p : l ≠ p)
    (d_g_p : g ≠ p)
    (hr_p : some p ≠ m._root)
    (hr_t : some t ≠ m._root) :
    ∃ m2, map._swap_nodes m (some p) (some t) = some m2 ∧
      m2.mem p = some { color := ct, val := vP, l := none, r := none, parent := some t } ∧
      m2.mem t = some { color := cP, val := vt, l := some p, r := some l, parent := some g } ∧
      m2.mem l = some { color := cl, val := vl, l := q1, r := q2, parent := some t } ∧
      m2.mem g = some { color := cg, val := vg, l := some t, r := q3, parent := q4 } ∧
      (∀ b, b ∉ [l, g, p, t] → m2.mem b = m.mem b) ∧
      m2._root = m._root ∧
      m2.brk = m.brk ∧
      m2._sz = m._sz ∧
      m2._cmp_k = m._cmp_k :=
  have hr0 : m._root = m._root := rfl
  Exists.elim (set_parent_step (m := m) c_l (some t)) fun m1 S1 =>
  have w1 : m1.mem l = some { color := cl, val := vl, l := q1, r := q2, parent := some t } := S1.2.1
  Exists.elim (set_l_step (m := m1) ((S1.2.2.1 g d_g_l).trans c_g) (some t)) fun m2 S2 =>
  have w2 : m2.mem g = some { color := cg, val := vg, l := some t, r := q3, parent := q4 } := S2.2.1
  have k2_t := (S2.2.2.1 t d_t_g).trans ((S1.2.2.1 t d_t_l).trans c_t)
  have k2_p := (S2.2.2.1 p d_p_g).trans ((S1.2.2.1 p d_p_l).trans c_p)
  Exists.elim (set_l_step (m := m2) k2_p none) fun m3 S3 =>
  have w3 : m3.mem p = some { color := cP, val := vP, l := none, r := some l, parent := some g } :=
    S3.2.1
  have xr3 : m3._root = m._root := S3.2.2.2.2.1.trans (S2.2.2.2.2.1.trans (S1.2.2.2.2.1.trans hr0))
  Exists.elim (set_r_step (m := m3) w3 none) fun m4 S4 =>
  have w4 : m4.mem p = some { color := cP, val := vP, l := none, r := none, parent := some g } :=
    S4.2.1
  have k4_t := (S4.2.2.1 t d_t_p).trans ((S3.2.2.1 t d_t_p).trans k2_t)
  Exists.elim (set_parent_step (m := m4) w4 (some t)) fun m5 S5 =>
  have w5 : m5.mem p = some { color := cP, val := vP, l := none, r := none, parent := some t } :=
    S5.2.1
  Exists.elim (set_l_step (m := m5) ((S5.2.2.1 t d_t_p).trans k4_t) (some p)) fun m6 S6 =>
  have w6 : m6.mem t = some { color := ct, val := vt, l := some p, r := none, parent := some p } :=
    S6.2.1
  have xr6 : m6._root = m._root := S6.2.2.2.2.1.trans (S5.2.2.2.2.1.trans (S4.2.2.2.2.1.trans xr3))
  Exists.elim (set_r_step (m := m6) w6 (some l)) fun m7 S7 =>
  have w7 : m7.mem t = some { color := ct, val := vt, l := some p, r := some l, parent := some p }
    := S7.2.1
  Exists.elim (set_parent_step (m := m7) w7 (some g)) fun m8 S8 =>
  have w8 : m8.mem t = some { color := ct, val := vt, l := some p, r := some l, parent := some g }
    := S8.2.1
  have k7_p := (S7.2.2.1 p d_p_t).trans ((S6.2.2.1 p d_p_t).trans w5)
  Exists.elim (set_color_step (m := m8) ((S8.2.2.1 p d_p_t).trans k7_p) ct) fun m9 S9 =>
  have w9 : m9.mem p = some { color := ct, val := vP, l := none, r := none, parent := some t } :=
    S9.2.1
  have xr9 : m9._root = m._root := S9.2.2.2.2.1.trans (S8.2.2.2.2.1.trans (S7.2.2.2.2.1.trans xr6))
  Exists.elim (set_color_step (m := m9) ((S9.2.2.1 t d_t_p).trans w8) cP) fun m10 S10 =>
  have w10 : m10.mem t = some { color := cP, val := vt, l := some p, r := some l, parent := some g
    } := S10.2.1
  have k3_l := (S3.2.2.1 l d_l_p).trans ((S2.2.2.1 l d_l_g).trans w1)
  have k5_l := (S5.2.2.1 l d_l_p).trans ((S4.2.2.1 l d_l_p).trans k3_l)
  have k7_l := (S7.2.2.1 l d_l_t).trans ((S6.2.2.1 l d_l_t).trans k5_l)
  have k9_l := (S9.2.2.1 l d_l_p).trans ((S8.2.2.1 l d_l_t).trans k7_l)
  have k4_g := (S4.2.2.1 g d_g_p).trans ((S3.2.2.1 g d_g_p).trans w2)
  have k6_g := (S6.2.2.1 g d_g_t).trans ((S5.2.2.1 g d_g_p).trans k4_g)
  have k8_g := (S8.2.2.1 g d_g_t).trans ((S7.2.2.1 g d_g_t).trans k6_g)
  have k10_g := (S10.2.2.1 g d_g_t).trans ((S9.2.2.1 g d_g_p).trans k8_g)
  have hop : map._swap_nodes m (some p) (some t) = some m10 := by
    simp only [map._swap_nodes, map._swap_set_parent, map._swap_set_child,
      (get_l_eq (m := m) c_p : get_l m (some p) = some (some t)),
      (get_r_eq (m := m) c_p : get_r m (some p) = some (some l)), d_l_t, d_t_l, S1.1,
      (get_parent_eq (m := m1) ((S1.2.2.1 p d_p_l).trans c_p) : get_parent m1 (some p) = some (some
        g)),
      d_g_t, d_t_g,
      (get_l_eq (m := m1) ((S1.2.2.1 g d_g_l).trans c_g) : get_l m1 (some g) = some (some p)),
      S2.1, ((S2.2.2.2.2.1.trans (S1.2.2.2.2.1.trans hr0)) : m2._root = m._root), hr_p, hr_t,
      (get_l_eq (m := m2) k2_t : get_l m2 (some t) = some none),
      (get_r_eq (m := m2) k2_t : get_r m2 (some t) = some none),
      (get_parent_eq (m := m2) k2_t : get_parent m2 (some t) = some (some p)),
      (get_l_eq (m := m2) k2_p : get_l m2 (some p) = some (some t)),
      (get_r_eq (m := m2) k2_p : get_r m2 (some p) = some (some l)),
      (get_parent_eq (m := m2) k2_p : get_parent m2 (some p) = some (some g)),
      (get_color_eq (m := m2) k2_p : get_color m2 (some p) = some cP),
      (get_l_eq (m := m2) k2_t : get_l m2 (some t) = some none), S3.1,
      (get_r_eq (m := m3) ((S3.2.2.1 t d_t_p).trans k2_t) : get_r m3 (some t) = some none), S4.1,
      (get_parent_eq (m := m4) k4_t : get_parent m4 (some t) = some (some p)), S5.1, S6.1, S7.1,
      S8.1, (get_color_eq (m := m8) w8 : get_color m8 (some t) = some ct), S9.1, S10.1,
      bind_eq_ub, pure_eq_some, ub_bind_some, ne_eq, Option.some.injEq, not_false_eq_true,
      not_true_eq_false, and_self, and_true, true_and, and_false, false_and, if_true, if_false,
      ite_true, ite_false, reduceCtorEq, reduceIte, ite_not, not_not, Bool.not_eq_true,
      decide_eq_true_eq, decide_eq_false_iff_not, decide_True, decide_False, Bool.false_eq_true,
      eq_self_iff_true, Option.isSome_some, Option.isSome_none]
  have h_l : ∀ b, b ∉ [l, g, p, t] → b ≠ l := fun b hb e => hb (e ▸ List.Mem.head _)
  have h_g : ∀ b, b ∉ [l, g, p, t] → b ≠ g := fun b hb e => hb (e ▸ List.Mem.tail _ (List.Mem.head
    _))
  have h_p : ∀ b, b ∉ [l, g, p, t] → b ≠ p := fun b hb e => hb (e ▸ List.Mem.tail _ (List.Mem.tail
    _ (List.Mem.head _)))
  have h_t : ∀ b, b ∉ [l, g, p, t] → b ≠ t := fun b hb e => hb (e ▸ List.Mem.tail _ (List.Mem.tail
    _ (List.Mem.tail _ (List.Mem.head _))))
  ⟨m10, hop, ((S10.2.2.1 p d_p_t).trans w9), w10, ((S10.2.2.1 l d_l_t).trans k9_l), k10_g, (fun b
    hb => ((S10.2.2.1 b (h_t b hb)).trans ((S9.2.2.1 b (h_p b hb)).trans ((S8.2.2.1 b (h_t b
    hb)).trans ((S7.2.2.1 b (h_t b hb)).trans ((S6.2.2.1 b (h_t b hb)).trans ((S5.2.2.1 b (h_p b
    hb)).trans ((S4.2.2.1 b (h_p b hb)).trans ((S3.2.2.1 b (h_p b hb)).trans ((S2.2.2.1 b (h_g b
    hb)).trans (S1.2.2.1 b (h_l b hb)))))))))))), (S10.2.2.2.2.1.trans xr9), (S10.2.2.2.1.trans
    (S9.2.2.2.1.trans (S8.2.2.2.1.trans (S7.2.2.2.1.trans (S6.2.2.2.1.trans (S5.2.2.2.1.trans
    (S4.2.2.2.1.trans (S3.2.2.2.1.trans (S2.2.2.2.1.trans S1.2.2.2.1))))))))),
    (S10.2.2.2.2.2.1.trans (S9.2.2.2.2.2.1.trans (S8.2.2.2.2.2.1.trans (S7.2.2.2.2.2.1.trans
    (S6.2.2.2.2.2.1.trans (S5.2.2.2.2.2.1.trans (S4.2.2.2.2.2.1.trans (S3.2.2.2.2.2.1.trans
    (S2.2.2.2.2.2.1.trans S1.2.2.2.2.2.1))))))))), (S10.2.2.2.2.2.2.trans (S9.2.2.2.2.2.2.trans
    (S8.2.2.2.2.2.2.trans (S7.2.2.2.2.2.2.trans (S6.2.2.2.2.2.2.trans (S5.2.2.2.2.2.2.trans
    (S4.2.2.2.2.2.2.trans (S3.2.2.2.2.2.2.trans (S2.2.2.2.2.2.2.trans S1.2.2.2.2.2.2)))))))))⟩

/-- Member `_swap_nodes` of a node and its left child, which has no right child. -/
theorem swap_adj_pred_L_nil
    {m : map K V} {p t l g : Nat} {cP ct cl cg : color_type} {vP vt vl vg : Option (K × V)}
    {ll lr sg : tree K V} {q : List (frame K V)}
    (h : Rep m (fill ((.L g cg vg sg) :: q)
      (.node p cP vP (.node t ct vt .nil .nil) (.node l cl vl ll lr)))) :
    ∃ m2, map._swap_nodes m (some p) (some t) = some m2 ∧
      Rep m2 (fill ((.L g cg vg sg) :: q)
        (.node t cP vt (.node p ct vP .nil .nil) (.node l cl vl ll lr))) ∧ SameAux m m2 :=
  have hs := shaped_fill.1 h.shaped
  have c_p : m.mem p = some { color := cP, val := vP, l := some t, r := some l, parent := some g }
    := hs.2.1
  have c_t : m.mem t = some { color := ct, val := vt, l := none, r := none, parent := some p } :=
    hs.2.2.1.1
  have c_l : m.mem l = some { color := cl, val := vl, l := ll.top, r := lr.top, parent := some p }
    := hs.2.2.2.1
  have c_g : m.mem g = some { color := cg, val := vg, l := some p, r := sg.top, parent := ptop q }
    := hs.1.1
  have hB : (List.flatten [(pbefore q).map Prod.fst, [t], [p], ll.addrs, [l], lr.addrs, [g],
    sg.addrs, (pafter q).map Prod.fst]).Nodup := by
    have e : (fill ((.L g cg vg sg) :: q) (.node p cP vP (.node t ct vt .nil .nil) (.node l cl vl
      ll lr))).addrs =
        List.flatten [(pbefore q).map Prod.fst, [t], [p], ll.addrs, [l], lr.addrs, [g], sg.addrs,
          (pafter q).map Prod.fst] := by
      rw [fill_addrs]
      simp [pbefore, pafter, pbefore_append, pafter_append, tree.addrs]
    exact e ▸ h.nodup
  have hr_p : some p ≠ m._root := by
    have h0 := h
    simp only [fill_L, fill_R, fill_append] at h0
    exact Rep.ne_root (f := (.L g cg vg sg)) (q := q) h0 (by simp [mem_fill_addrs])
  have hr_t : some t ≠ m._root := by
    have h0 := h
    simp only [fill_L, fill_R, fill_append] at h0
    exact Rep.ne_root (f := (.L g cg vg sg)) (q := q) h0 (by simp [mem_fill_addrs])
  Exists.elim (swap_adj_pred_L_nil_cells c_p c_t c_l c_g (blocks_ne_at hB 4 1 rfl rfl rfl)
    (blocks_ne_at hB 1 4 rfl rfl rfl) (blocks_ne_at hB 2 4 rfl rfl rfl) (blocks_ne_at hB 6 1 rfl
    rfl rfl) (blocks_ne_at hB 1 6 rfl rfl rfl) (blocks_ne_at hB 6 4 rfl rfl rfl) (blocks_ne_at hB 2
    6 rfl rfl rfl) (blocks_ne_at hB 1 2 rfl rfl rfl) (blocks_ne_at hB 2 1 rfl rfl rfl)
    (blocks_ne_at hB 4 6 rfl rfl rfl) (blocks_ne_at hB 4 2 rfl rfl rfl) (blocks_ne_at hB 6 2 rfl
    rfl rfl) hr_p hr_t) fun m2 H =>
  have fr := H.2.2.2.2.2.1
  have a_ll : ∀ b ∈ ll.addrs, m2.mem b = m.mem b :=
    region_agree hB [4, 6, 2, 1] [l, g, p, t] 3 rfl rfl rfl fr
  have a_lr : ∀ b ∈ lr.addrs, m2.mem b = m.mem b :=
    region_agree hB [4, 6, 2, 1] [l, g, p, t] 5 rfl rfl rfl fr
  have a_sg : ∀ b ∈ sg.addrs, m2.mem b = m.mem b :=
    region_agree hB [4, 6, 2, 1] [l, g, p, t] 7 rfl rfl rfl fr
  have a_q : ∀ b ∈ paddrs q, m2.mem b = m.mem b :=
    paddrs_agree (region_agree hB [4, 6, 2, 1] [l, g, p, t] 0 rfl rfl rfl fr)
      (region_agree hB [4, 6, 2, 1] [l, g, p, t] 8 rfl rfl rfl fr)
  have hroot : m2._root = (fill ((.L g cg vg sg) :: q) (.node t cP vt (.node p ct vP .nil .nil)
    (.node l cl vl ll lr))).top := by
    rw [H.2.2.2.2.2.2.1]
    refine h.root.trans ?_
    simp only [fill_L, fill_R, fill_append]
    exact fill_top_congr rfl
  have hpath : ShapedPath m2.mem ((.L g cg vg sg) :: q) (some t) :=
    ⟨H.2.2.2.2.1, Shaped.agree hs.1.2.1 a_sg, ShapedPath.agree_path hs.1.2.2 a_q⟩
  have htree : Shaped m2.mem (some g) (.node t cP vt (.node p ct vP .nil .nil) (.node l cl vl ll
    lr)) :=
    ⟨H.2.2.1, ⟨H.2.1, trivial, trivial⟩, ⟨H.2.2.2.1, Shaped.agree hs.2.2.2.2.1 a_ll, Shaped.agree
      hs.2.2.2.2.2 a_lr⟩⟩
  ⟨m2, H.1, h.of_perm (perm_swap_adj_pred _) H.2.2.2.2.2.2.2.1 hroot (shaped_fill.2 ⟨hpath,
    htree⟩), ⟨H.2.2.2.2.2.2.2.1, H.2.2.2.2.2.2.2.2.1, H.2.2.2.2.2.2.2.2.2⟩⟩

/-- The cells after `_swap_nodes`, case `far1_succ_L_nil`. -/
theorem swap_far1_succ_L_nil_cells {m : map K V} {t k p l g : Nat}
    {ct ck cP cl cg : color_type} {vt vk vP vl vg : Option (K × V)} {q1 q2 q3 q4 q5 : ptr}
    (c_t : m.mem t = some { color := ct, val := vt, l := none, r := none, parent := some k })
    (c_k : m.mem k = some { color := ck, val := vk, l := some t, r := q1, parent := some p })
    (c_p : m.mem p = some { color := cP, val := vP, l := some l, r := some k, parent := some g })
    (c_l : m.mem l = some { color := cl, val := vl, l := q2, r := q3, parent := some p })
    (c_g : m.mem g = some { color := cg, val := vg, l := some p, r := q4, parent := q5 })
    (d_l_t : l ≠ t)
    (d_t_l : t ≠ l)
    (d_p_l : p ≠ l)
    (d_k_t : k ≠ t)
    (d_t_k : t ≠ k)
    (d_k_l : k ≠ l)
    (d_p_k : p ≠ k)
    (d_g_t : g ≠ t)
    (d_t_g : t ≠ g)
    (d_g_l : g ≠ l)
    (d_g_k : g ≠ k)
    (d_k_p : k ≠ p)
    (d_k_g : k ≠ g)
    (d_p_g : p ≠ g)
    (d_t_p : t ≠ p)
    (d_p_t : p ≠ t)
    (d_l_k : l ≠ k)
    (d_l_g : l ≠ g)
    (d_l_p : l ≠ p)
    (d_g_p : g ≠ p)
    (hr_p : some p ≠ m._root)
    (hr_t : some t ≠ m._root) :
    ∃ m2, map._swap_nodes m (some p) (some t) = some m2 ∧
      m2.mem t = some { color := cP, val := vt, l := some l, r := some k, parent := some g } ∧
      m2.mem k = some { color := ck, val := vk, l := some p, r := q1, parent := some t } ∧
      m2.mem p = some { color := ct, val := vP, l := none, r := none, parent := some k } ∧
      m2.mem l = some { color := cl, val := vl, l := q2, r := q3, parent := some t } ∧
      m2.mem g = some { color := cg, val := vg, l := some t, r := q4, parent := q5 } ∧
      (∀ b, b ∉ [l, k, g, p, t] → m2.mem b = m.mem b) ∧
      m2._root = m._root ∧
      m2.brk = m.brk ∧
      m2._sz = m._sz ∧
      m2._cmp_k = m._cmp_k :=
  have hr0 : m._root = m._root := rfl
  Exists.elim (set_parent_step (m := m) c_l (some t)) fun m1 S1 =>
  have w1 : m1.mem l = some { color := cl, val := vl, l := q2, r := q3, parent := some t } := S1.2.1
  Exists.elim (set_parent_step (m := m1) ((S1.2.2.1 k d_k_l).trans c_k) (some t)) fun m2 S2 =>
  have w2 : m2.mem k = some { color := ck, val := vk, l := some t, r := q1, parent := some t } :=
    S2.2.1
  have k2_p := (S2.2.2.1 p d_p_k).trans ((S1.2.2.1 p d_p_l).trans c_p)
  have k2_g := (S2.2.2.1 g d_g_k).trans ((S1.2.2.1 g d_g_l).trans c_g)
  Exists.elim (set_l_step (m := m2) k2_g (some t)) fun m3 S3 =>
  have w3 : m3.mem g = some { color := cg, val := vg, l := some t, r := q4, parent := q5 } := S3.2.1
  have xr3 : m3._root = m._root := S3.2.2.2.2.1.trans (S2.2.2.2.2.1.trans (S1.2.2.2.2.1.trans hr0))
  have k2_t := (S2.2.2.1 t d_t_k).trans ((S1.2.2.1 t d_t_l).trans c_t)
  Exists.elim (set_l_step (m := m3) ((S3.2.2.1 k d_k_g).trans w2) (some p)) fun m4 S4 =>
  have w4 : m4.mem k = some { color := ck, val := vk, l := some p, r := q1, parent := some t } :=
    S4.2.1
  have k4_p := (S4.2.2.1 p d_p_k).trans ((S3.2.2.1 p d_p_g).trans k2_p)
  have k4_t := (S4.2.2.1 t d_t_k).trans ((S3.2.2.1 t d_t_g).trans k2_t)
  Exists.elim (set_l_step (m := m4) k4_p none) fun m5 S5 =>
  have w5 : m5.mem p = some { color := cP, val := vP, l := none, r := some k, parent := some g } :=
    S5.2.1
  Exists.elim (set_r_step (m := m5) w5 none) fun m6 S6 =>
  have w6 : m6.mem p = some { color := cP, val := vP, l := none, r := none, parent := some g } :=
    S6.2.1
  have xr6 : m6._root = m._root := S6.2.2.2.2.1.trans (S5.2.2.2.2.1.trans (S4.2.2.2.2.1.trans xr3))
  have k6_t := (S6.2.2.1 t d_t_p).trans ((S5.2.2.1 t d_t_p).trans k4_t)
  Exists.elim (set_parent_step (m := m6) w6 (some k)) fun m7 S7 =>
  have w7 : m7.mem p = some { color := cP, val := vP, l := none, r := none, parent := some k } :=
    S7.2.1
  Exists.elim (set_l_step (m := m7) ((S7.2.2.1 t d_t_p).trans k6_t) (some l)) fun m8 S8 =>
  have w8 : m8.mem t = some { color := ct, val := vt, l := some l, r := none, parent := some k } :=
    S8.2.1
  Exists.elim (set_r_step (m := m8) w8 (some k)) fun m9 S9 =>
  have w9 : m9.mem t = some { color := ct, val := vt, l := some l, r := some k, parent := some k }
    := S9.2.1
  have xr9 : m9._root = m._root := S9.2.2.2.2.1.trans (S8.2.2.2.2.1.trans (S7.2.2.2.2.1.trans xr6))
  Exists.elim (set_parent_step (m := m9) w9 (some g)) fun m10 S10 =>
  have w10 : m10.mem t = some { color := ct, val := vt, l := some l, r := some k, parent := some g
    } := S10.2.1
  have k9_p := (S9.2.2.1 p d_p_t).trans ((S8.2.2.1 p d_p_t).trans w7)
  Exists.elim (set_color_step (m := m10) ((S10.2.2.1 p d_p_t).trans k9_p) ct) fun m11 S11 =>
  have w11 : m11.mem p = some { color := ct, val := vP, l := none, r := none, parent := some k } :=
    S11.2.1
  Exists.elim (set_color_step (m := m11) ((S11.2.2.1 t d_t_p).trans w10) cP) fun m12 S12 =>
  have w12 : m12.mem t = some { color := cP, val := vt, l := some l, r := some k, parent := some g
    } := S12.2.1
  have xr12 : m12._root = m._root := S12.2.2.2.2.1.trans (S11.2.2.2.2.1.trans (S10.2.2.2.2.1.trans
    xr9))
  have k6_k := (S6.2.2.1 k d_k_p).trans ((S5.2.2.1 k d_k_p).trans w4)
  have k8_k := (S8.2.2.1 k d_k_t).trans ((S7.2.2.1 k d_k_p).trans k6_k)
  have k10_k := (S10.2.2.1 k d_k_t).trans ((S9.2.2.1 k d_k_t).trans k8_k)
  have k12_k := (S12.2.2.1 k d_k_t).trans ((S11.2.2.1 k d_k_p).trans k10_k)
  have k3_l := (S3.2.2.1 l d_l_g).trans ((S2.2.2.1 l d_l_k).trans w1)
  have k5_l := (S5.2.2.1 l d_l_p).trans ((S4.2.2.1 l d_l_k).trans k3_l)
  have k7_l := (S7.2.2.1 l d_l_p).trans ((S6.2.2.1 l d_l_p).trans k5_l)
  have k9_l := (S9.2.2.1 l d_l_t).trans ((S8.2.2.1 l d_l_t).trans k7_l)
  have k11_l := (S11.2.2.1 l d_l_p).trans ((S10.2.2.1 l d_l_t).trans k9_l)
  have k5_g := (S5.2.2.1 g d_g_p).trans ((S4.2.2.1 g d_g_k).trans w3)
  have k7_g := (S7.2.2.1 g d_g_p).trans ((S6.2.2.1 g d_g_p).trans k5_g)
  have k9_g := (S9.2.2.1 g d_g_t).trans ((S8.2.2.1 g d_g_t).trans k7_g)
  have k11_g := (S11.2.2.1 g d_g_p).trans ((S10.2.2.1 g d_g_t).trans k9_g)
  have hop : map._swap_nodes m (some p) (some t) = some m12 := by
    simp only [map._swap_nodes, map._swap_set_parent, map._swap_set_child,
      (get_l_eq (m := m) c_p : get_l m (some p) = some (some l)), d_l_t, d_t_l, S1.1,
      (get_r_eq (m := m1) ((S1.2.2.1 p d_p_l).trans c_p) : get_r m1 (some p) = some (some k)),
      d_k_t, d_t_k, S2.1,
      (get_parent_eq (m := m2) k2_p : get_parent m2 (some p) = some (some g)), d_g_t, d_t_g,
      (get_l_eq (m := m2) k2_g : get_l m2 (some g) = some (some p)), S3.1,
      (xr3 : m3._root = m._root), hr_p, hr_t,
      (get_l_eq (m := m3) ((S3.2.2.1 t d_t_g).trans k2_t) : get_l m3 (some t) = some none),
      (get_r_eq (m := m3) ((S3.2.2.1 t d_t_g).trans k2_t) : get_r m3 (some t) = some none),
      (get_parent_eq (m := m3) ((S3.2.2.1 t d_t_g).trans k2_t) : get_parent m3 (some t) = some
        (some k)),
      d_k_p, d_p_k,
      (get_l_eq (m := m3) ((S3.2.2.1 k d_k_g).trans w2) : get_l m3 (some k) = some (some t)),
      S4.1, (get_l_eq (m := m4) k4_p : get_l m4 (some p) = some (some l)),
      (get_r_eq (m := m4) k4_p : get_r m4 (some p) = some (some k)),
      (get_parent_eq (m := m4) k4_p : get_parent m4 (some p) = some (some g)),
      (get_color_eq (m := m4) k4_p : get_color m4 (some p) = some cP),
      (get_l_eq (m := m4) k4_t : get_l m4 (some t) = some none), S5.1,
      (get_r_eq (m := m5) ((S5.2.2.1 t d_t_p).trans k4_t) : get_r m5 (some t) = some none), S6.1,
      (get_parent_eq (m := m6) k6_t : get_parent m6 (some t) = some (some k)), S7.1, S8.1, S9.1,
      S10.1, (get_color_eq (m := m10) w10 : get_color m10 (some t) = some ct), S11.1, S12.1,
      bind_eq_ub, pure_eq_some, ub_bind_some, ne_eq, Option.some.injEq, not_false_eq_true,
      not_true_eq_false, and_self, and_true, true_and, and_false, false_and, if_true, if_false,
      ite_true, ite_false, reduceCtorEq, reduceIte, ite_not, not_not, Bool.not_eq_true,
      decide_eq_true_eq, decide_eq_false_iff_not, decide_True, decide_False, Bool.false_eq_true,
      eq_self_iff_true, Option.isSome_some, Option.isSome_none]
  have h_l : ∀ b, b ∉ [l, k, g, p, t] → b ≠ l := fun b hb e => hb (e ▸ List.Mem.head _)
  have h_k : ∀ b, b ∉ [l, k, g, p, t] → b ≠ k := fun b hb e => hb (e ▸ List.Mem.tail _
    (List.Mem.head _))
  have h_g : ∀ b, b ∉ [l, k, g, p, t] → b ≠ g := fun b hb e => hb (e ▸ List.Mem.tail _
    (List.Mem.tail _ (List.Mem.head _)))
  have h_p : ∀ b, b ∉ [l, k, g, p, t] → b ≠ p := fun b hb e => hb (e ▸ List.Mem.tail _
    (List.Mem.tail _ (List.Mem.tail _ (List.Mem.head _))))
  have h_t : ∀ b, b ∉ [l, k, g, p, t] → b ≠ t := fun b hb e => hb (e ▸ List.Mem.tail _
    (List.Mem.tail _ (List.Mem.tail _ (List.Mem.tail _ (List.Mem.head _)))))
  ⟨m12, hop, w12, k12_k, ((S12.2.2.1 p d_p_t).trans w11), ((S12.2.2.1 l d_l_t).trans k11_l),
    ((S12.2.2.1 g d_g_t).trans k11_g), (fun b hb => ((S12.2.2.1 b (h_t b hb)).trans ((S11.2.2.1 b
    (h_p b hb)).trans ((S10.2.2.1 b (h_t b hb)).trans ((S9.2.2.1 b (h_t b hb)).trans ((S8.2.2.1 b
    (h_t b hb)).trans ((S7.2.2.1 b (h_p b hb)).trans ((S6.2.2.1 b (h_p b hb)).trans ((S5.2.2.1 b
    (h_p b hb)).trans ((S4.2.2.1 b (h_k b hb)).trans ((S3.2.2.1 b (h_g b hb)).trans ((S2.2.2.1 b
    (h_k b hb)).trans (S1.2.2.1 b (h_l b hb)))))))))))))), xr12, (S12.2.2.2.1.trans
    (S11.2.2.2.1.trans (S10.2.2.2.1.trans (S9.2.2.2.1.trans (S8.2.2.2.1.trans (S7.2.2.2.1.trans
    (S6.2.2.2.1.trans (S5.2.2.2.1.trans (S4.2.2.2.1.trans (S3.2.2.2.1.trans (S2.2.2.2.1.trans
    S1.2.2.2.1))))))))))), (S12.2.2.2.2.2.1.trans (S11.2.2.2.2.2.1.trans (S10.2.2.2.2.2.1.trans
    (S9.2.2.2.2.2.1.trans (S8.2.2.2.2.2.1.trans (S7.2.2.2.2.2.1.trans (S6.2.2.2.2.2.1.trans
    (S5.2.2.2.2.2.1.trans (S4.2.2.2.2.2.1.trans (S3.2.2.2.2.2.1.trans (S2.2.2.2.2.2.1.trans
    S1.2.2.2.2.2.1))))))))))), (S12.2.2.2.2.2.2.trans (S11.2.2.2.2.2.2.trans (S10.2.2.2.2.2.2.trans
    (S9.2.2.2.2.2.2.trans (S8.2.2.2.2.2.2.trans (S7.2.2.2.2.2.2.trans (S6.2.2.2.2.2.2.trans
    (S5.2.2.2.2.2.2.trans (S4.2.2.2.2.2.2.trans (S3.2.2.2.2.2.2.trans (S2.2.2.2.2.2.2.trans
    S1.2.2.2.2.2.2)))))))))))⟩

/-- Member `_swap_nodes` of a node and the left child of its right child. -/
theorem swap_far1_succ_L_nil
    {m : map K V} {t k p l g : Nat} {ct ck cP cl cg : color_type}
    {vt vk vP vl vg : Option (K × V)} {sk ll lr sg : tree K V} {q : List (frame K V)}
    (h : Rep m (fill ((.L k ck vk sk) :: (.R p cP vP (.node l cl vl ll lr)) :: (.L g cg vg sg) :: q)
      (.node t ct vt .nil .nil))) :
    ∃ m2, map._swap_nodes m (some p) (some t) = some m2 ∧
      Rep m2 (fill ((.L k ck vk sk) :: (.R t cP vt (.node l cl vl ll lr)) :: (.L g cg vg sg) :: q)
        (.node p ct vP .nil .nil)) ∧ SameAux m m2 :=
  have hs := shaped_fill.1 h.shaped
  have c_t : m.mem t = some { color := ct, val := vt, l := none, r := none, parent := some k } :=
    hs.2.1
  have c_k : m.mem k = some { color := ck, val := vk, l := some t, r := sk.top, parent := some p }
    := hs.1.1
  have c_p : m.mem p = some { color := cP, val := vP, l := some l, r := some k, parent := some g }
    := hs.1.2.2.1
  have c_l : m.mem l = some { color := cl, val := vl, l := ll.top, r := lr.top, parent := some p }
    := hs.1.2.2.2.1.1
  have c_g : m.mem g = some { color := cg, val := vg, l := some p, r := sg.top, parent := ptop q }
    := hs.1.2.2.2.2.1
  have hB : (List.flatten [(pbefore q).map Prod.fst, ll.addrs, [l], lr.addrs, [p], [t], [k],
    sk.addrs, [g], sg.addrs, (pafter q).map Prod.fst]).Nodup := by
    have e : (fill ((.L k ck vk sk) :: (.R p cP vP (.node l cl vl ll lr)) :: (.L g cg vg sg) :: q)
      (.node t ct vt .nil .nil)).addrs =
        List.flatten [(pbefore q).map Prod.fst, ll.addrs, [l], lr.addrs, [p], [t], [k], sk.addrs,
          [g], sg.addrs, (pafter q).map Prod.fst] := by
      rw [fill_addrs]
      simp [pbefore, pafter, pbefore_append, pafter_append, tree.addrs]
    exact e ▸ h.nodup
  have hr_p : some p ≠ m._root := by
    have h0 := h
    simp only [fill_L, fill_R, fill_append] at h0
    exact Rep.ne_root (f := (.L g cg vg sg)) (q := q) h0 (by simp [mem_fill_addrs])
  have hr_t : some t ≠ m._root := by
    have h0 := h
    simp only [fill_L, fill_R, fill_append] at h0
    exact Rep.ne_root (f := (.L g cg vg sg)) (q := q) h0 (by simp [mem_fill_addrs])
  Exists.elim (swap_far1_succ_L_nil_cells c_t c_k c_p c_l c_g (blocks_ne_at hB 2 5 rfl rfl rfl)
    (blocks_ne_at hB 5 2 rfl rfl rfl) (blocks_ne_at hB 4 2 rfl rfl rfl) (blocks_ne_at hB 6 5 rfl
    rfl rfl) (blocks_ne_at hB 5 6 rfl rfl rfl) (blocks_ne_at hB 6 2 rfl rfl rfl) (blocks_ne_at hB 4
    6 rfl rfl rfl) (blocks_ne_at hB 8 5 rfl rfl rfl) (blocks_ne_at hB 5 8 rfl rfl rfl)
    (blocks_ne_at hB 8 2 rfl rfl rfl) (blocks_ne_at hB 8 6 rfl rfl rfl) (blocks_ne_at hB 6 4 rfl
    rfl rfl) (blocks_ne_at hB 6 8 rfl rfl rfl) (blocks_ne_at hB 4 8 rfl rfl rfl) (blocks_ne_at hB 5
    4 rfl rfl rfl) (blocks_ne_at hB 4 5 rfl rfl rfl) (blocks_ne_at hB 2 6 rfl rfl rfl)
    (blocks_ne_at hB 2 8 rfl rfl rfl) (blocks_ne_at hB 2 4 rfl rfl rfl) (blocks_ne_at hB 8 4 rfl
    rfl rfl) hr_p hr_t) fun m2 H =>
  have fr := H.2.2.2.2.2.2.1
  have a_sk : ∀ b ∈ sk.addrs, m2.mem b = m.mem b :=
    region_agree hB [2, 6, 8, 4, 5] [l, k, g, p, t] 7 rfl rfl rfl fr
  have a_ll : ∀ b ∈ ll.addrs, m2.mem b = m.mem b :=
    region_agree hB [2, 6, 8, 4, 5] [l, k, g, p, t] 1 rfl rfl rfl fr
  have a_lr : ∀ b ∈ lr.addrs, m2.mem b = m.mem b :=
    region_agree hB [2, 6, 8, 4, 5] [l, k, g, p, t] 3 rfl rfl rfl fr
  have a_sg : ∀ b ∈ sg.addrs, m2.mem b = m.mem b :=
    region_agree hB [2, 6, 8, 4, 5] [l, k, g, p, t] 9 rfl rfl rfl fr
  have a_q : ∀ b ∈ paddrs q, m2.mem b = m.mem b :=
    paddrs_agree (region_agree hB [2, 6, 8, 4, 5] [l, k, g, p, t] 0 rfl rfl rfl fr)
      (region_agree hB [2, 6, 8, 4, 5] [l, k, g, p, t] 10 rfl rfl rfl fr)
  have hroot : m2._root = (fill ((.L k ck vk sk) :: (.R t cP vt (.node l cl vl ll lr)) :: (.L g cg
    vg sg) :: q) (.node p ct vP .nil .nil)).top := by
    rw [H.2.2.2.2.2.2.2.1]
    refine h.root.trans ?_
    simp only [fill_L, fill_R, fill_append]
    exact fill_top_congr rfl
  have hpath : ShapedPath m2.mem ((.L k ck vk sk) :: (.R t cP vt (.node l cl vl ll lr)) :: (.L g cg
    vg sg) :: q) (some p) :=
    ⟨H.2.2.1, Shaped.agree hs.1.2.1 a_sk, ⟨H.2.1, ⟨H.2.2.2.2.1, Shaped.agree hs.1.2.2.2.1.2.1 a_ll,
      Shaped.agree hs.1.2.2.2.1.2.2 a_lr⟩, ⟨H.2.2.2.2.2.1, Shaped.agree hs.1.2.2.2.2.2.1 a_sg,
      ShapedPath.agree_path hs.1.2.2.2.2.2.2 a_q⟩⟩⟩
  have htree : Shaped m2.mem (some k) (.node p ct vP .nil .nil) :=
    ⟨H.2.2.2.1, trivial, trivial⟩
  ⟨m2, H.1, h.of_perm (perm_swap_far1_succ _) H.2.2.2.2.2.2.2.2.1 hroot (shaped_fill.2 ⟨hpath,
    htree⟩), ⟨H.2.2.2.2.2.2.2.2.1, H.2.2.2.2.2.2.2.2.2.1, H.2.2.2.2.2.2.2.2.2.2⟩⟩

/-- The cells after `_swap_nodes`, case `far2_succ_L_nil`. -/
theorem swap_far2_succ_L_nil_cells {m : map K V} {t f k p l g : Nat}
    {ct cf ck cP cl cg : color_type} {vt vf vk vP vl vg : Option (K × V)}
    {q1 q2 q3 q4 q5 q6 q7 q8 : ptr}
    (c_t : m.mem t = some { color := ct, val := vt, l := none, r := none, parent := some f })
    (c_f : m.mem f = some { color := cf, val := vf, l := some t, r := q1, parent := q2 })
    (c_k : m.mem k = some { color := ck, val := vk, l := q3, r := q4, parent := some p })
    (c_p : m.mem p = some { color := cP, val := vP, l := some l, r := some k, parent := some g })
    (c_l : m.mem l = some { color := cl, val := vl, l := q5, r := q6, parent := some p })
    (c_g : m.mem g = some { color := cg, val := vg, l := some p, r := q7, parent := q8 })
    (d_l_t : l ≠ t)
    (d_t_l : t ≠ l)
    (d_p_l : p ≠ l)
    (d_k_t : k ≠ t)
    (d_t_k : t ≠ k)
    (d_k_l : k ≠ l)
    (d_p_k : p ≠ k)
    (d_g_t : g ≠ t)
    (d_t_g : t ≠ g)
    (d_g_l : g ≠ l)
    (d_g_k : g ≠ k)
    (d_f_p : f ≠ p)
    (d_p_f : p ≠ f)
    (d_f_l : f ≠ l)
    (d_f_k : f ≠ k)
    (d_f_g : f ≠ g)
    (d_p_g : p ≠ g)
    (d_t_f : t ≠ f)
    (d_t_p : t ≠ p)
    (d_p_t : p ≠ t)
    (d_f_t : f ≠ t)
    (d_k_g : k ≠ g)
    (d_k_f : k ≠ f)
    (d_k_p : k ≠ p)
    (d_l_k : l ≠ k)
    (d_l_g : l ≠ g)
    (d_l_f : l ≠ f)
    (d_l_p : l ≠ p)
    (d_g_f : g ≠ f)
    (d_g_p : g ≠ p)
    (hr_p : some p ≠ m._root)
    (hr_t : some t ≠ m._root) :
    ∃ m2, map._swap_nodes m (some p) (some t) = some m2 ∧
      m2.mem t = some { color := cP, val := vt, l := some l, r := some k, parent := some g } ∧
      m2.mem f = some { color := cf, val := vf, l := some p, r := q1, parent := q2 } ∧
      m2.mem k = some { color := ck, val := vk, l := q3, r := q4, parent := some t } ∧
      m2.mem p = some { color := ct, val := vP, l := none, r := none, parent := some f } ∧
      m2.mem l = some { color := cl, val := vl, l := q5, r := q6, parent := some t } ∧
      m2.mem g = some { color := cg, val := vg, l := some t, r := q7, parent := q8 } ∧
      (∀ b, b ∉ [l, k, g, f, p, t] → m2.mem b = m.mem b) ∧
      m2._root = m._root ∧
      m2.brk = m.brk ∧
      m2._sz = m._sz ∧
      m2._cmp_k = m._cmp_k :=
  have hr0 : m._root = m._root := rfl
  Exists.elim (set_parent_step (m := m) c_l (some t)) fun m1 S1 =>
  have w1 : m1.mem l = some { color := cl, val := vl, l := q5, r := q6, parent := some t } := S1.2.1
  Exists.elim (set_parent_step (m := m1) ((S1.2.2.1 k d_k_l).trans c_k) (some t)) fun m2 S2 =>
  have w2 : m2.mem k = some { color := ck, val := vk, l := q3, r := q4, parent := some t } := S2.2.1
  have k2_p := (S2.2.2.1 p d_p_k).trans ((S1.2.2.1 p d_p_l).trans c_p)
  have k2_g := (S2.2.2.1 g d_g_k).trans ((S1.2.2.1 g d_g_l).trans c_g)
  Exists.elim (set_l_step (m := m2) k2_g (some t)) fun m3 S3 =>
  have w3 : m3.mem g = some { color := cg, val := vg, l := some t, r := q7, parent := q8 } := S3.2.1
  have xr3 : m3._root = m._root := S3.2.2.2.2.1.trans (S2.2.2.2.2.1.trans (S1.2.2.2.2.1.trans hr0))
  have k2_t := (S2.2.2.1 t d_t_k).trans ((S1.2.2.1 t d_t_l).trans c_t)
  have k2_f := (S2.2.2.1 f d_f_k).trans ((S1.2.2.1 f d_f_l).trans c_f)
  Exists.elim (set_l_step (m := m3) ((S3.2.2.1 f d_f_g).trans k2_f) (some p)) fun m4 S4 =>
  have w4 : m4.mem f = some { color := cf, val := vf, l := some p, r := q1, parent := q2 } := S4.2.1
  have k4_p := (S4.2.2.1 p d_p_f).trans ((S3.2.2.1 p d_p_g).trans k2_p)
  have k4_t := (S4.2.2.1 t d_t_f).trans ((S3.2.2.1 t d_t_g).trans k2_t)
  Exists.elim (set_l_step (m := m4) k4_p none) fun m5 S5 =>
  have w5 : m5.mem p = some { color := cP, val := vP, l := none, r := some k, parent := some g } :=
    S5.2.1
  Exists.elim (set_r_step (m := m5) w5 none) fun m6 S6 =>
  have w6 : m6.mem p = some { color := cP, val := vP, l := none, r := none, parent := some g } :=
    S6.2.1
  have xr6 : m6._root = m._root := S6.2.2.2.2.1.trans (S5.2.2.2.2.1.trans (S4.2.2.2.2.1.trans xr3))
  have k6_t := (S6.2.2.1 t d_t_p).trans ((S5.2.2.1 t d_t_p).trans k4_t)
  Exists.elim (set_parent_step (m := m6) w6 (some f)) fun m7 S7 =>
  have w7 : m7.mem p = some { color := cP, val := vP, l := none, r := none, parent := some f } :=
    S7.2.1
  Exists.elim (set_l_step (m := m7) ((S7.2.2.1 t d_t_p).trans k6_t) (some l)) fun m8 S8 =>
  have w8 : m8.mem t = some { color := ct, val := vt, l := some l, r := none, parent := some f } :=
    S8.2.1
  Exists.elim (set_r_step (m := m8) w8 (some k)) fun m9 S9 =>
  have w9 : m9.mem t = some { color := ct, val := vt, l := some l, r := some k, parent := some f }
    := S9.2.1
  have xr9 : m9._root = m._root := S9.2.2.2.2.1.trans (S8.2.2.2.2.1.trans (S7.2.2.2.2.1.trans xr6))
  Exists.elim (set_parent_step (m := m9) w9 (some g)) fun m10 S10 =>
  have w10 : m10.mem t = some { color := ct, val := vt, l := some l, r := some k, parent := some g
    } := S10.2.1
  have k9_p := (S9.2.2.1 p d_p_t).trans ((S8.2.2.1 p d_p_t).trans w7)
  Exists.elim (set_color_step (m := m10) ((S10.2.2.1 p d_p_t).trans k9_p) ct) fun m11 S11 =>
  have w11 : m11.mem p = some { color := ct, val := vP, l := none, r := none, parent := some f } :=
    S11.2.1
  Exists.elim (set_color_step (m := m11) ((S11.2.2.1 t d_t_p).trans w10) cP) fun m12 S12 =>
  have w12 : m12.mem t = some { color := cP, val := vt, l := some l, r := some k, parent := some g
    } := S12.2.1
  have xr12 : m12._root = m._root := S12.2.2.2.2.1.trans (S11.2.2.2.2.1.trans (S10.2.2.2.2.1.trans
    xr9))
  have k6_f := (S6.2.2.1 f d_f_p).trans ((S5.2.2.1 f d_f_p).trans w4)
  have k8_f := (S8.2.2.1 f d_f_t).trans ((S7.2.2.1 f d_f_p).trans k6_f)
  have k10_f := (S10.2.2.1 f d_f_t).trans ((S9.2.2.1 f d_f_t).trans k8_f)
  have k12_f := (S12.2.2.1 f d_f_t).trans ((S11.2.2.1 f d_f_p).trans k10_f)
  have k4_k := (S4.2.2.1 k d_k_f).trans ((S3.2.2.1 k d_k_g).trans w2)
  have k6_k := (S6.2.2.1 k d_k_p).trans ((S5.2.2.1 k d_k_p).trans k4_k)
  have k8_k := (S8.2.2.1 k d_k_t).trans ((S7.2.2.1 k d_k_p).trans k6_k)
  have k10_k := (S10.2.2.1 k d_k_t).trans ((S9.2.2.1 k d_k_t).trans k8_k)
  have k12_k := (S12.2.2.1 k d_k_t).trans ((S11.2.2.1 k d_k_p).trans k10_k)
  have k3_l := (S3.2.2.1 l d_l_g).trans ((S2.2.2.1 l d_l_k).trans w1)
  have k5_l := (S5.2.2.1 l d_l_p).trans ((S4.2.2.1 l d_l_f).trans k3_l)
  have k7_l := (S7.2.2.1 l d_l_p).trans ((S6.2.2.1 l d_l_p).trans k5_l)
  have k9_l := (S9.2.2.1 l d_l_t).trans ((S8.2.2.1 l d_l_t).trans k7_l)
  have k11_l := (S11.2.2.1 l d_l_p).trans ((S10.2.2.1 l d_l_t).trans k9_l)
  have k5_g := (S5.2.2.1 g d_g_p).trans ((S4.2.2.1 g d_g_f).trans w3)
  have k7_g := (S7.2.2.1 g d_g_p).trans ((S6.2.2.1 g d_g_p).trans k5_g)
  have k9_g := (S9.2.2.1 g d_g_t).trans ((S8.2.2.1 g d_g_t).trans k7_g)
  have k11_g := (S11.2.2.1 g d_g_p).trans ((S10.2.2.1 g d_g_t).trans k9_g)
  have hop : map._swap_nodes m (some p) (some t) = some m12 := by
    simp only [map._swap_nodes, map._swap_set_parent, map._swap_set_child,
      (get_l_eq (m := m) c_p : get_l m (some p) = some (some l)), d_l_t, d_t_l, S1.1,
      (get_r_eq (m := m1) ((S1.2.2.1 p d_p_l).trans c_p) : get_r m1 (some p) = some (some k)),
      d_k_t, d_t_k, S2.1,
      (get_parent_eq (m := m2) k2_p : get_parent m2 (some p) = some (some g)), d_g_t, d_t_g,
      (get_l_eq (m := m2) k2_g : get_l m2 (some g) = some (some p)), S3.1,
      (xr3 : m3._root = m._root), hr_p, hr_t,
      (get_l_eq (m := m3) ((S3.2.2.1 t d_t_g).trans k2_t) : get_l m3 (some t) = some none),
      (get_r_eq (m := m3) ((S3.2.2.1 t d_t_g).trans k2_t) : get_r m3 (some t) = some none),
      (get_parent_eq (m := m3) ((S3.2.2.1 t d_t_g).trans k2_t) : get_parent m3 (some t) = some
        (some f)),
      d_f_p, d_p_f,
      (get_l_eq (m := m3) ((S3.2.2.1 f d_f_g).trans k2_f) : get_l m3 (some f) = some (some t)),
      S4.1, (get_l_eq (m := m4) k4_p : get_l m4 (some p) = some (some l)),
      (get_r_eq (m := m4) k4_p : get_r m4 (some p) = some (some k)),
      (get_parent_eq (m := m4) k4_p : get_parent m4 (some p) = some (some g)),
      (get_color_eq (m := m4) k4_p : get_color m4 (some p) = some cP),
      (get_l_eq (m := m4) k4_t : get_l m4 (some t) = some none), S5.1,
      (get_r_eq (m := m5) ((S5.2.2.1 t d_t_p).trans k4_t) : get_r m5 (some t) = some none), S6.1,
      (get_parent_eq (m := m6) k6_t : get_parent m6 (some t) = some (some f)), S7.1, S8.1, S9.1,
      S10.1, (get_color_eq (m := m10) w10 : get_color m10 (some t) = some ct), S11.1, S12.1,
      bind_eq_ub, pure_eq_some, ub_bind_some, ne_eq, Option.some.injEq, not_false_eq_true,
      not_true_eq_false, and_self, and_true, true_and, and_false, false_and, if_true, if_false,
      ite_true, ite_false, reduceCtorEq, reduceIte, ite_not, not_not, Bool.not_eq_true,
      decide_eq_true_eq, decide_eq_false_iff_not, decide_True, decide_False, Bool.false_eq_true,
      eq_self_iff_true, Option.isSome_some, Option.isSome_none]
  have h_l : ∀ b, b ∉ [l, k, g, f, p, t] → b ≠ l := fun b hb e => hb (e ▸ List.Mem.head _)
  have h_k : ∀ b, b ∉ [l, k, g, f, p, t] → b ≠ k := fun b hb e => hb (e ▸ List.Mem.tail _
    (List.Mem.head _))
  have h_g : ∀ b, b ∉ [l, k, g, f, p, t] → b ≠ g := fun b hb e => hb (e ▸ List.Mem.tail _
    (List.Mem.tail _ (List.Mem.head _)))
  have h_f : ∀ b, b ∉ [l, k, g, f, p, t] → b ≠ f := fun b hb e => hb (e ▸ List.Mem.tail _
    (List.Mem.tail _ (List.Mem.tail _ (List.Mem.head _))))
  have h_p : ∀ b, b ∉ [l, k, g, f, p, t] → b ≠ p := fun b hb e => hb (e ▸ List.Mem.tail _
    (List.Mem.tail _ (List.Mem.tail _ (List.Mem.tail _ (List.Mem.head _)))))
  have h_t : ∀ b, b ∉ [l, k, g, f, p, t] → b ≠ t := fun b hb e => hb (e ▸ List.Mem.tail _
    (List.Mem.tail _ (List.Mem.tail _ (List.Mem.tail _ (List.Mem.tail _ (List.Mem.head _))))))
  ⟨m12, hop, w12, k12_f, k12_k, ((S12.2.2.1 p d_p_t).trans w11), ((S12.2.2.1 l d_l_t).trans k11_l),
    ((S12.2.2.1 g d_g_t).trans k11_g), (fun b hb => ((S12.2.2.1 b (h_t b hb)).trans ((S11.2.2.1 b
    (h_p b hb)).trans ((S10.2.2.1 b (h_t b hb)).trans ((S9.2.2.1 b (h_t b hb)).trans ((S8.2.2.1 b
    (h_t b hb)).trans ((S7.2.2.1 b (h_p b hb)).trans ((S6.2.2.1 b (h_p b hb)).trans ((S5.2.2.1 b
    (h_p b hb)).trans ((S4.2.2.1 b (h_f b hb)).trans ((S3.2.2.1 b (h_g b hb)).trans ((S2.2.2.1 b
    (h_k b hb)).trans (S1.2.2.1 b (h_l b hb)))))))))))))), xr12, (S12.2.2.2.1.trans
    (S11.2.2.2.1.trans (S10.2.2.2.1.trans (S9.2.2.2.1.trans (S8.2.2.2.1.trans (S7.2.2.2.1.trans
    (S6.2.2.2.1.trans (S5.2.2.2.1.trans (S4.2.2.2.1.trans (S3.2.2.2.1.trans (S2.2.2.2.1.trans
    S1.2.2.2.1))))))))))), (S12.2.2.2.2.2.1.trans (S11.2.2.2.2.2.1.trans (S10.2.2.2.2.2.1.trans
    (S9.2.2.2.2.2.1.trans (S8.2.2.2.2.2.1.trans (S7.2.2.2.2.2.1.trans (S6.2.2.2.2.2.1.trans
    (S5.2.2.2.2.2.1.trans (S4.2.2.2.2.2.1.trans (S3.2.2.2.2.2.1.trans (S2.2.2.2.2.2.1.trans
    S1.2.2.2.2.2.1))))))))))), (S12.2.2.2.2.2.2.trans (S11.2.2.2.2.2.2.trans (S10.2.2.2.2.2.2.trans
    (S9.2.2.2.2.2.2.trans (S8.2.2.2.2.2.2.trans (S7.2.2.2.2.2.2.trans (S6.2.2.2.2.2.2.trans
    (S5.2.2.2.2.2.2.trans (S4.2.2.2.2.2.2.trans (S3.2.2.2.2.2.2.trans (S2.2.2.2.2.2.2.trans
    S1.2.2.2.2.2.2)))))))))))⟩

/-- Member `_swap_nodes` of a node and a left descendant of its right child. -/
theorem swap_far2_succ_L_nil
    {m : map K V} {t f k p l g : Nat} {ct cf ck cP cl cg : color_type}
    {vt vf vk vP vl vg : Option (K × V)} {sf sk ll lr sg : tree K V} {rm q : List (frame K V)}
    (h : Rep m (fill ((.L f cf vf sf) :: (rm ++ (.L k ck vk sk) :: (.R p cP vP (.node l cl vl ll lr)) :: (.L g cg vg sg) :: q))
      (.node t ct vt .nil .nil))) :
    ∃ m2, map._swap_nodes m (some p) (some t) = some m2 ∧
      Rep m2 (fill ((.L f cf vf sf) :: (rm ++ (.L k ck vk sk) :: (.R t cP vt (.node l cl vl ll lr)) :: (.L g cg vg sg) :: q))
        (.node p ct vP .nil .nil)) ∧ SameAux m m2 :=
  have hs := shaped_fill.1 h.shaped
  have c_t : m.mem t = some { color := ct, val := vt, l := none, r := none, parent := some f } :=
    hs.2.1
  have c_f : m.mem f = some { color := cf, val := vf, l := some t, r := sf.top, parent := ptop ((rm
    ++ (.L k ck vk sk) :: (.R p cP vP (.node l cl vl ll lr)) :: (.L g cg vg sg) :: q)) } := hs.1.1
  have s_rm := hs.1.2.2
  Exists.elim (ShapedPath.drop s_rm) fun hh sp2 =>
  have c_k : m.mem k = some { color := ck, val := vk, l := hh, r := sk.top, parent := some p } :=
    sp2.1
  have c_p : m.mem p = some { color := cP, val := vP, l := some l, r := some k, parent := some g }
    := sp2.2.2.1
  have c_l : m.mem l = some { color := cl, val := vl, l := ll.top, r := lr.top, parent := some p }
    := sp2.2.2.2.1.1
  have c_g : m.mem g = some { color := cg, val := vg, l := some p, r := sg.top, parent := ptop q }
    := sp2.2.2.2.2.1
  have hB : (List.flatten [(pbefore q).map Prod.fst, ll.addrs, [l], lr.addrs, [p], (pbefore rm).map
    Prod.fst, [t], [f], sf.addrs, (pafter rm).map Prod.fst, [k], sk.addrs, [g], sg.addrs, (pafter
    q).map Prod.fst]).Nodup := by
    have e : (fill ((.L f cf vf sf) :: (rm ++ (.L k ck vk sk) :: (.R p cP vP (.node l cl vl ll lr))
      :: (.L g cg vg sg) :: q)) (.node t ct vt .nil .nil)).addrs =
        List.flatten [(pbefore q).map Prod.fst, ll.addrs, [l], lr.addrs, [p], (pbefore rm).map
          Prod.fst, [t], [f], sf.addrs, (pafter rm).map Prod.fst, [k], sk.addrs, [g], sg.addrs,
          (pafter q).map Prod.fst] := by
      rw [fill_addrs]
      simp [pbefore, pafter, pbefore_append, pafter_append, tree.addrs]
    exact e ▸ h.nodup
  have hr_p : some p ≠ m._root := by
    have h0 := h
    simp only [fill_L, fill_R, fill_append] at h0
    exact Rep.ne_root (f := (.L g cg vg sg)) (q := q) h0 (by simp [mem_fill_addrs])
  have hr_t : some t ≠ m._root := by
    have h0 := h
    simp only [fill_L, fill_R, fill_append] at h0
    exact Rep.ne_root (f := (.L g cg vg sg)) (q := q) h0 (by simp [mem_fill_addrs])
  Exists.elim (swap_far2_succ_L_nil_cells c_t c_f c_k c_p c_l c_g (blocks_ne_at hB 2 6 rfl rfl rfl)
    (blocks_ne_at hB 6 2 rfl rfl rfl) (blocks_ne_at hB 4 2 rfl rfl rfl) (blocks_ne_at hB 10 6 rfl
    rfl rfl) (blocks_ne_at hB 6 10 rfl rfl rfl) (blocks_ne_at hB 10 2 rfl rfl rfl) (blocks_ne_at hB
    4 10 rfl rfl rfl) (blocks_ne_at hB 12 6 rfl rfl rfl) (blocks_ne_at hB 6 12 rfl rfl rfl)
    (blocks_ne_at hB 12 2 rfl rfl rfl) (blocks_ne_at hB 12 10 rfl rfl rfl) (blocks_ne_at hB 7 4 rfl
    rfl rfl) (blocks_ne_at hB 4 7 rfl rfl rfl) (blocks_ne_at hB 7 2 rfl rfl rfl) (blocks_ne_at hB 7
    10 rfl rfl rfl) (blocks_ne_at hB 7 12 rfl rfl rfl) (blocks_ne_at hB 4 12 rfl rfl rfl)
    (blocks_ne_at hB 6 7 rfl rfl rfl) (blocks_ne_at hB 6 4 rfl rfl rfl) (blocks_ne_at hB 4 6 rfl
    rfl rfl) (blocks_ne_at hB 7 6 rfl rfl rfl) (blocks_ne_at hB 10 12 rfl rfl rfl) (blocks_ne_at hB
    10 7 rfl rfl rfl) (blocks_ne_at hB 10 4 rfl rfl rfl) (blocks_ne_at hB 2 10 rfl rfl rfl)
    (blocks_ne_at hB 2 12 rfl rfl rfl) (blocks_ne_at hB 2 7 rfl rfl rfl) (blocks_ne_at hB 2 4 rfl
    rfl rfl) (blocks_ne_at hB 12 7 rfl rfl rfl) (blocks_ne_at hB 12 4 rfl rfl rfl) hr_p hr_t) fun
    m2 H =>
  have fr := H.2.2.2.2.2.2.2.1
  have a_sf : ∀ b ∈ sf.addrs, m2.mem b = m.mem b :=
    region_agree hB [2, 10, 12, 7, 4, 6] [l, k, g, f, p, t] 8 rfl rfl rfl fr
  have a_rm : ∀ b ∈ paddrs rm, m2.mem b = m.mem b :=
    paddrs_agree (region_agree hB [2, 10, 12, 7, 4, 6] [l, k, g, f, p, t] 5 rfl rfl rfl fr)
      (region_agree hB [2, 10, 12, 7, 4, 6] [l, k, g, f, p, t] 9 rfl rfl rfl fr)
  have a_sk : ∀ b ∈ sk.addrs, m2.mem b = m.mem b :=
    region_agree hB [2, 10, 12, 7, 4, 6] [l, k, g, f, p, t] 11 rfl rfl rfl fr
  have a_ll : ∀ b ∈ ll.addrs, m2.mem b = m.mem b :=
    region_agree hB [2, 10, 12, 7, 4, 6] [l, k, g, f, p, t] 1 rfl rfl rfl fr
  have a_lr : ∀ b ∈ lr.addrs, m2.mem b = m.mem b :=
    region_agree hB [2, 10, 12, 7, 4, 6] [l, k, g, f, p, t] 3 rfl rfl rfl fr
  have a_sg : ∀ b ∈ sg.addrs, m2.mem b = m.mem b :=
    region_agree hB [2, 10, 12, 7, 4, 6] [l, k, g, f, p, t] 13 rfl rfl rfl fr
  have a_q : ∀ b ∈ paddrs q, m2.mem b = m.mem b :=
    paddrs_agree (region_agree hB [2, 10, 12, 7, 4, 6] [l, k, g, f, p, t] 0 rfl rfl rfl fr)
      (region_agree hB [2, 10, 12, 7, 4, 6] [l, k, g, f, p, t] 14 rfl rfl rfl fr)
  have ep_f : ptop ((rm ++ (.L k ck vk sk) :: (.R t cP vt (.node l cl vl ll lr)) :: (.L g cg vg sg)
    :: q)) = ptop ((rm ++ (.L k ck vk sk) :: (.R p cP vP (.node l cl vl ll lr)) :: (.L g cg vg sg)
    :: q)) :=
    ptop_append_cons rm _ _ rfl
  have hroot : m2._root = (fill ((.L f cf vf sf) :: (rm ++ (.L k ck vk sk) :: (.R t cP vt (.node l
    cl vl ll lr)) :: (.L g cg vg sg) :: q)) (.node p ct vP .nil .nil)).top := by
    rw [H.2.2.2.2.2.2.2.2.1]
    refine h.root.trans ?_
    simp only [fill_L, fill_R, fill_append]
    exact fill_top_congr rfl
  have hpath : ShapedPath m2.mem ((.L f cf vf sf) :: (rm ++ (.L k ck vk sk) :: (.R t cP vt (.node l
    cl vl ll lr)) :: (.L g cg vg sg) :: q)) (some p) :=
    ⟨(by rw [ep_f]; exact H.2.2.1), Shaped.agree hs.1.2.1 a_sf, ShapedPath.splice_L s_rm a_rm c_k
      rfl (⟨H.2.2.2.1, Shaped.agree sp2.2.1 a_sk, ⟨H.2.1, ⟨H.2.2.2.2.2.1, Shaped.agree
      sp2.2.2.2.1.2.1 a_ll, Shaped.agree sp2.2.2.2.1.2.2 a_lr⟩, ⟨H.2.2.2.2.2.2.1, Shaped.agree
      sp2.2.2.2.2.2.1 a_sg, ShapedPath.agree_path sp2.2.2.2.2.2.2 a_q⟩⟩⟩)⟩
  have htree : Shaped m2.mem (some f) (.node p ct vP .nil .nil) :=
    ⟨H.2.2.2.2.1, trivial, trivial⟩
  ⟨m2, H.1, h.of_perm (perm_swap_far2_succ _) H.2.2.2.2.2.2.2.2.2.1 hroot (shaped_fill.2 ⟨hpath,
    htree⟩), ⟨H.2.2.2.2.2.2.2.2.2.1, H.2.2.2.2.2.2.2.2.2.2.1, H.2.2.2.2.2.2.2.2.2.2.2⟩⟩

/-- The cells after `_swap_nodes`, case `adj_succ_L_node`. -/
theorem swap_adj_succ_L_node_cells {m : map K V} {p l t r g : Nat}
    {cP cl ct cr cg : color_type} {vP vl vt vr vg : Option (K × V)} {q1 q2 q3 q4 q5 q6 : ptr}
    (c_p : m.mem p = some { color := cP, val := vP, l := some l, r := some t, parent := some g })
    (c_l : m.mem l = some { color := cl, val := vl, l := q1, r := q2, parent := some p })
    (c_t : m.mem t = some { color := ct, val := vt, l := none, r := some r, parent := some p })
    (c_r : m.mem r = some { color := cr, val := vr, l := q3, r := q4, parent := some t })
    (c_g : m.mem g = some { color := cg, val := vg, l := some p, r := q5, parent := q6 })
    (d_l_t : l ≠ t)
    (d_t_l : t ≠ l)
    (d_p_l : p ≠ l)
    (d_g_t : g ≠ t)
    (d_t_g : t ≠ g)
    (d_g_l : g ≠ l)
    (d_r_p : r ≠ p)
    (d_p_r : p ≠ r)
    (d_r_l : r ≠ l)
    (d_r_g : r ≠ g)
    (d_t_r : t ≠ r)
    (d_p_g : p ≠ g)
    (d_t_p : t ≠ p)
    (d_p_t : p ≠ t)
    (d_l_g : l ≠ g)
    (d_l_r : l ≠ r)
    (d_l_p : l ≠ p)
    (d_r_t : r ≠ t)
    (d_g_r : g ≠ r)
    (d_g_p : g ≠ p)
    (hr_p : some p ≠ m._root)
    (hr_t : some t ≠ m._root) :
    ∃ m2, map._swap_nodes m (some p) (some t) = some m2 ∧
      m2.mem p = some { color := ct, val := vP, l := none, r := some r, parent := some t } ∧
      m2.mem l = some { color := cl, val := vl, l := q1, r := q2, parent := some t } ∧
      m2.mem t = some { color := cP, val := vt, l := some l, r := some p, parent := some g } ∧
      m2.mem r = some { color := cr, val := vr, l := q3, r := q4, parent := some p } ∧
      m2.mem g = some { color := cg, val := vg, l := some t, r := q5, parent := q6 } ∧
      (∀ b, b ∉ [l, g, r, p, t] → m2.mem b = m.mem b) ∧
      m2._root = m._root ∧
      m2.brk = m.brk ∧
      m2._sz = m._sz ∧
      m2._cmp_k = m._cmp_k :=
  have hr0 : m._root = m._root := rfl
  Exists.elim (set_parent_step (m := m) c_l (some t)) fun m1 S1 =>
  have w1 : m1.mem l = some { color := cl, val := vl, l := q1, r := q2, parent := some t } := S1.2.1
  Exists.elim (set_l_step (m := m1) ((S1.2.2.1 g d_g_l).trans c_g) (some t)) fun m2 S2 =>
  have w2 : m2.mem g = some { color := cg, val := vg, l := some t, r := q5, parent := q6 } := S2.2.1
  have k2_t := (S2.2.2.1 t d_t_g).trans ((S1.2.2.1 t d_t_l).trans c_t)
  have k2_r := (S2.2.2.1 r d_r_g).trans ((S1.2.2.1 r d_r_l).trans c_r)
  Exists.elim (set_parent_step (m := m2) k2_r (some p)) fun m3 S3 =>
  have w3 : m3.mem r = some { color := cr, val := vr, l := q3, r := q4, parent := some p } := S3.2.1
  have xr3 : m3._root = m._root := S3.2.2.2.2.1.trans (S2.2.2.2.2.1.trans (S1.2.2.2.2.1.trans hr0))
  have k2_p := (S2.2.2.1 p d_p_g).trans ((S1.2.2.1 p d_p_l).trans c_p)
  Exists.elim (set_l_step (m := m3) ((S3.2.2.1 p d_p_r).trans k2_p) none) fun m4 S4 =>
  have w4 : m4.mem p = some { color := cP, val := vP, l := none, r := some t, parent := some g } :=
    S4.2.1
  have k4_t := (S4.2.2.1 t d_t_p).trans ((S3.2.2.1 t d_t_r).trans k2_t)
  Exists.elim (set_r_step (m := m4) w4 (some r)) fun m5 S5 =>
  have w5 : m5.mem p = some { color := cP, val := vP, l := none, r := some r, parent := some g } :=
    S5.2.1
  Exists.elim (set_parent_step (m := m5) w5 (some t)) fun m6 S6 =>
  have w6 : m6.mem p = some { color := cP, val := vP, l := none, r := some r, parent := some t } :=
    S6.2.1
  have xr6 : m6._root = m._root := S6.2.2.2.2.1.trans (S5.2.2.2.2.1.trans (S4.2.2.2.2.1.trans xr3))
  have k6_t := (S6.2.2.1 t d_t_p).trans ((S5.2.2.1 t d_t_p).trans k4_t)
  Exists.elim (set_l_step (m := m6) k6_t (some l)) fun m7 S7 =>
  have w7 : m7.mem t = some { color := ct, val := vt, l := some l, r := some r, parent := some p }
    := S7.2.1
  Exists.elim (set_r_step (m := m7) w7 (some p)) fun m8 S8 =>
  have w8 : m8.mem t = some { color := ct, val := vt, l := some l, r := some p, parent := some p }
    := S8.2.1
  Exists.elim (set_parent_step (m := m8) w8 (some g)) fun m9 S9 =>
  have w9 : m9.mem t = some { color := ct, val := vt, l := some l, r := some p, parent := some g }
    := S9.2.1
  have xr9 : m9._root = m._root := S9.2.2.2.2.1.trans (S8.2.2.2.2.1.trans (S7.2.2.2.2.1.trans xr6))
  have k8_p := (S8.2.2.1 p d_p_t).trans ((S7.2.2.1 p d_p_t).trans w6)
  Exists.elim (set_color_step (m := m9) ((S9.2.2.1 p d_p_t).trans k8_p) ct) fun m10 S10 =>
  have w10 : m10.mem p = some { color := ct, val := vP, l := none, r := some r, parent := some t }
    := S10.2.1
  Exists.elim (set_color_step (m := m10) ((S10.2.2.1 t d_t_p).trans w9) cP) fun m11 S11 =>
  have w11 : m11.mem t = some { color := cP, val := vt, l := some l, r := some p, parent := some g
    } := S11.2.1
  have k3_l := (S3.2.2.1 l d_l_r).trans ((S2.2.2.1 l d_l_g).trans w1)
  have k5_l := (S5.2.2.1 l d_l_p).trans ((S4.2.2.1 l d_l_p).trans k3_l)
  have k7_l := (S7.2.2.1 l d_l_t).trans ((S6.2.2.1 l d_l_p).trans k5_l)
  have k9_l := (S9.2.2.1 l d_l_t).trans ((S8.2.2.1 l d_l_t).trans k7_l)
  have k11_l := (S11.2.2.1 l d_l_t).trans ((S10.2.2.1 l d_l_p).trans k9_l)
  have k5_r := (S5.2.2.1 r d_r_p).trans ((S4.2.2.1 r d_r_p).trans w3)
  have k7_r := (S7.2.2.1 r d_r_t).trans ((S6.2.2.1 r d_r_p).trans k5_r)
  have k9_r := (S9.2.2.1 r d_r_t).trans ((S8.2.2.1 r d_r_t).trans k7_r)
  have k11_r := (S11.2.2.1 r d_r_t).trans ((S10.2.2.1 r d_r_p).trans k9_r)
  have k4_g := (S4.2.2.1 g d_g_p).trans ((S3.2.2.1 g d_g_r).trans w2)
  have k6_g := (S6.2.2.1 g d_g_p).trans ((S5.2.2.1 g d_g_p).trans k4_g)
  have k8_g := (S8.2.2.1 g d_g_t).trans ((S7.2.2.1 g d_g_t).trans k6_g)
  have k10_g := (S10.2.2.1 g d_g_p).trans ((S9.2.2.1 g d_g_t).trans k8_g)
  have hop : map._swap_nodes m (some p) (some t) = some m11 := by
    simp only [map._swap_nodes, map._swap_set_parent, map._swap_set_child,
      (get_l_eq (m := m) c_p : get_l m (some p) = some (some l)), d_l_t, d_t_l, S1.1,
      (get_r_eq (m := m1) ((S1.2.2.1 p d_p_l).trans c_p) : get_r m1 (some p) = some (some t)),
      (get_parent_eq (m := m1) ((S1.2.2.1 p d_p_l).trans c_p) : get_parent m1 (some p) = some (some
        g)),
      d_g_t, d_t_g,
      (get_l_eq (m := m1) ((S1.2.2.1 g d_g_l).trans c_g) : get_l m1 (some g) = some (some p)),
      S2.1, ((S2.2.2.2.2.1.trans (S1.2.2.2.2.1.trans hr0)) : m2._root = m._root), hr_p, hr_t,
      (get_l_eq (m := m2) k2_t : get_l m2 (some t) = some none),
      (get_r_eq (m := m2) k2_t : get_r m2 (some t) = some (some r)), d_r_p, d_p_r, S3.1,
      (get_parent_eq (m := m3) ((S3.2.2.1 t d_t_r).trans k2_t) : get_parent m3 (some t) = some
        (some p)),
      (get_l_eq (m := m3) ((S3.2.2.1 p d_p_r).trans k2_p) : get_l m3 (some p) = some (some l)),
      (get_r_eq (m := m3) ((S3.2.2.1 p d_p_r).trans k2_p) : get_r m3 (some p) = some (some t)),
      (get_parent_eq (m := m3) ((S3.2.2.1 p d_p_r).trans k2_p) : get_parent m3 (some p) = some
        (some g)),
      (get_color_eq (m := m3) ((S3.2.2.1 p d_p_r).trans k2_p) : get_color m3 (some p) = some cP),
      (get_l_eq (m := m3) ((S3.2.2.1 t d_t_r).trans k2_t) : get_l m3 (some t) = some none), S4.1,
      (get_r_eq (m := m4) k4_t : get_r m4 (some t) = some (some r)), S5.1,
      (get_parent_eq (m := m5) ((S5.2.2.1 t d_t_p).trans k4_t) : get_parent m5 (some t) = some
        (some p)),
      S6.1, S7.1, S8.1, S9.1, (get_color_eq (m := m9) w9 : get_color m9 (some t) = some ct),
      S10.1, S11.1, bind_eq_ub, pure_eq_some, ub_bind_some, ne_eq, Option.some.injEq,
      not_false_eq_true, not_true_eq_false, and_self, and_true, true_and, and_false, false_and,
      if_true, if_false, ite_true, ite_false, reduceCtorEq, reduceIte, ite_not, not_not,
      Bool.not_eq_true, decide_eq_true_eq, decide_eq_false_iff_not, decide_True, decide_False,
      Bool.false_eq_true, eq_self_iff_true, Option.isSome_some, Option.isSome_none]
  have h_l : ∀ b, b ∉ [l, g, r, p, t] → b ≠ l := fun b hb e => hb (e ▸ List.Mem.head _)
  have h_g : ∀ b, b ∉ [l, g, r, p, t] → b ≠ g := fun b hb e => hb (e ▸ List.Mem.tail _
    (List.Mem.head _))
  have h_r : ∀ b, b ∉ [l, g, r, p, t] → b ≠ r := fun b hb e => hb (e ▸ List.Mem.tail _
    (List.Mem.tail _ (List.Mem.head _)))
  have h_p : ∀ b, b ∉ [l, g, r, p, t] → b ≠ p := fun b hb e => hb (e ▸ List.Mem.tail _
    (List.Mem.tail _ (List.Mem.tail _ (List.Mem.head _))))
  have h_t : ∀ b, b ∉ [l, g, r, p, t] → b ≠ t := fun b hb e => hb (e ▸ List.Mem.tail _
    (List.Mem.tail _ (List.Mem.tail _ (List.Mem.tail _ (List.Mem.head _)))))
  ⟨m11, hop, ((S11.2.2.1 p d_p_t).trans w10), k11_l, w11, k11_r, ((S11.2.2.1 g d_g_t).trans k10_g),
    (fun b hb => ((S11.2.2.1 b (h_t b hb)).trans ((S10.2.2.1 b (h_p b hb)).trans ((S9.2.2.1 b (h_t
    b hb)).trans ((S8.2.2.1 b (h_t b hb)).trans ((S7.2.2.1 b (h_t b hb)).trans ((S6.2.2.1 b (h_p b
    hb)).trans ((S5.2.2.1 b (h_p b hb)).trans ((S4.2.2.1 b (h_p b hb)).trans ((S3.2.2.1 b (h_r b
    hb)).trans ((S2.2.2.1 b (h_g b hb)).trans (S1.2.2.1 b (h_l b hb))))))))))))),
    (S11.2.2.2.2.1.trans (S10.2.2.2.2.1.trans xr9)), (S11.2.2.2.1.trans (S10.2.2.2.1.trans
    (S9.2.2.2.1.trans (S8.2.2.2.1.trans (S7.2.2.2.1.trans (S6.2.2.2.1.trans (S5.2.2.2.1.trans
    (S4.2.2.2.1.trans (S3.2.2.2.1.trans (S2.2.2.2.1.trans S1.2.2.2.1)))))))))),
    (S11.2.2.2.2.2.1.trans (S10.2.2.2.2.2.1.trans (S9.2.2.2.2.2.1.trans (S8.2.2.2.2.2.1.trans
    (S7.2.2.2.2.2.1.trans (S6.2.2.2.2.2.1.trans (S5.2.2.2.2.2.1.trans (S4.2.2.2.2.2.1.trans
    (S3.2.2.2.2.2.1.trans (S2.2.2.2.2.2.1.trans S1.2.2.2.2.2.1)))))))))), (S11.2.2.2.2.2.2.trans
    (S10.2.2.2.2.2.2.trans (S9.2.2.2.2.2.2.trans (S8.2.2.2.2.2.2.trans (S7.2.2.2.2.2.2.trans
    (S6.2.2.2.2.2.2.trans (S5.2.2.2.2.2.2.trans (S4.2.2.2.2.2.2.trans (S3.2.2.2.2.2.2.trans
    (S2.2.2.2.2.2.2.trans S1.2.2.2.2.2.2))))))))))⟩

/-- Member `_swap_nodes` of a node and its right child, which has no left child. -/
theorem swap_adj_succ_L_node
    {m : map K V} {p l t r g : Nat} {cP cl ct cr cg : color_type}
    {vP vl vt vr vg : Option (K × V)} {ll lr rl rr sg : tree K V} {q : List (frame K V)}
    (h : Rep m (fill ((.L g cg vg sg) :: q)
      (.node p cP vP (.node l cl vl ll lr) (.node t ct vt .nil (.node r cr vr rl rr))))) :
    ∃ m2, map._swap_nodes m (some p) (some t) = some m2 ∧
      Rep m2 (fill ((.L g cg vg sg) :: q)
        (.node t cP vt (.node l cl vl ll lr) (.node p ct vP .nil (.node r cr vr rl rr)))) ∧ SameAux m m2 :=
  have hs := shaped_fill.1 h.shaped
  have c_p : m.mem p = some { color := cP, val := vP, l := some l, r := some t, parent := some g }
    := hs.2.1
  have c_l : m.mem l = some { color := cl, val := vl, l := ll.top, r := lr.top, parent := some p }
    := hs.2.2.1.1
  have c_t : m.mem t = some { color := ct, val := vt, l := none, r := some r, parent := some p } :=
    hs.2.2.2.1
  have c_r : m.mem r = some { color := cr, val := vr, l := rl.top, r := rr.top, parent := some t }
    := hs.2.2.2.2.2.1
  have c_g : m.mem g = some { color := cg, val := vg, l := some p, r := sg.top, parent := ptop q }
    := hs.1.1
  have hB : (List.flatten [(pbefore q).map Prod.fst, ll.addrs, [l], lr.addrs, [p], [t], rl.addrs,
    [r], rr.addrs, [g], sg.addrs, (pafter q).map Prod.fst]).Nodup := by
    have e : (fill ((.L g cg vg sg) :: q) (.node p cP vP (.node l cl vl ll lr) (.node t ct vt .nil
      (.node r cr vr rl rr)))).addrs =
        List.flatten [(pbefore q).map Prod.fst, ll.addrs, [l], lr.addrs, [p], [t], rl.addrs, [r],
          rr.addrs, [g], sg.addrs, (pafter q).map Prod.fst] := by
      rw [fill_addrs]
      simp [pbefore, pafter, pbefore_append, pafter_append, tree.addrs]
    exact e ▸ h.nodup
  have hr_p : some p ≠ m._root := by
    have h0 := h
    simp only [fill_L, fill_R, fill_append] at h0
    exact Rep.ne_root (f := (.L g cg vg sg)) (q := q) h0 (by simp [mem_fill_addrs])
  have hr_t : some t ≠ m._root := by
    have h0 := h
    simp only [fill_L, fill_R, fill_append] at h0
    exact Rep.ne_root (f := (.L g cg vg sg)) (q := q) h0 (by simp [mem_fill_addrs])
  Exists.elim (swap_adj_succ_L_node_cells c_p c_l c_t c_r c_g (blocks_ne_at hB 2 5 rfl rfl rfl)
    (blocks_ne_at hB 5 2 rfl rfl rfl) (blocks_ne_at hB 4 2 rfl rfl rfl) (blocks_ne_at hB 9 5 rfl
    rfl rfl) (blocks_ne_at hB 5 9 rfl rfl rfl) (blocks_ne_at hB 9 2 rfl rfl rfl) (blocks_ne_at hB 7
    4 rfl rfl rfl) (blocks_ne_at hB 4 7 rfl rfl rfl) (blocks_ne_at hB 7 2 rfl rfl rfl)
    (blocks_ne_at hB 7 9 rfl rfl rfl) (blocks_ne_at hB 5 7 rfl rfl rfl) (blocks_ne_at hB 4 9 rfl
    rfl rfl) (blocks_ne_at hB 5 4 rfl rfl rfl) (blocks_ne_at hB 4 5 rfl rfl rfl) (blocks_ne_at hB 2
    9 rfl rfl rfl) (blocks_ne_at hB 2 7 rfl rfl rfl) (blocks_ne_at hB 2 4 rfl rfl rfl)
    (blocks_ne_at hB 7 5 rfl rfl rfl) (blocks_ne_at hB 9 7 rfl rfl rfl) (blocks_ne_at hB 9 4 rfl
    rfl rfl) hr_p hr_t) fun m2 H =>
  have fr := H.2.2.2.2.2.2.1
  have a_ll : ∀ b ∈ ll.addrs, m2.mem b = m.mem b :=
    region_agree hB [2, 9, 7, 4, 5] [l, g, r, p, t] 1 rfl rfl rfl fr
  have a_lr : ∀ b ∈ lr.addrs, m2.mem b = m.mem b :=
    region_agree hB [2, 9, 7, 4, 5] [l, g, r, p, t] 3 rfl rfl rfl fr
  have a_rl : ∀ b ∈ rl.addrs, m2.mem b = m.mem b :=
    region_agree hB [2, 9, 7, 4, 5] [l, g, r, p, t] 6 rfl rfl rfl fr
  have a_rr : ∀ b ∈ rr.addrs, m2.mem b = m.mem b :=
    region_agree hB [2, 9, 7, 4, 5] [l, g, r, p, t] 8 rfl rfl rfl fr
  have a_sg : ∀ b ∈ sg.addrs, m2.mem b = m.mem b :=
    region_agree hB [2, 9, 7, 4, 5] [l, g, r, p, t] 10 rfl rfl rfl fr
  have a_q : ∀ b ∈ paddrs q, m2.mem b = m.mem b :=
    paddrs_agree (region_agree hB [2, 9, 7, 4, 5] [l, g, r, p, t] 0 rfl rfl rfl fr)
      (region_agree hB [2, 9, 7, 4, 5] [l, g, r, p, t] 11 rfl rfl rfl fr)
  have hroot : m2._root = (fill ((.L g cg vg sg) :: q) (.node t cP vt (.node l cl vl ll lr) (.node
    p ct vP .nil (.node r cr vr rl rr)))).top := by
    rw [H.2.2.2.2.2.2.2.1]
    refine h.root.trans ?_
    simp only [fill_L, fill_R, fill_append]
    exact fill_top_congr rfl
  have hpath : ShapedPath m2.mem ((.L g cg vg sg) :: q) (some t) :=
    ⟨H.2.2.2.2.2.1, Shaped.agree hs.1.2.1 a_sg, ShapedPath.agree_path hs.1.2.2 a_q⟩
  have htree : Shaped m2.mem (some g) (.node t cP vt (.node l cl vl ll lr) (.node p ct vP .nil
    (.node r cr vr rl rr))) :=
    ⟨H.2.2.2.1, ⟨H.2.2.1, Shaped.agree hs.2.2.1.2.1 a_ll, Shaped.agree hs.2.2.1.2.2 a_lr⟩, ⟨H.2.1,
      trivial, ⟨H.2.2.2.2.1, Shaped.agree hs.2.2.2.2.2.2.1 a_rl, Shaped.agree hs.2.2.2.2.2.2.2
      a_rr⟩⟩⟩
  ⟨m2, H.1, h.of_perm (perm_swap_adj_succ _) H.2.2.2.2.2.2.2.2.1 hroot (shaped_fill.2 ⟨hpath,
    htree⟩), ⟨H.2.2.2.2.2.2.2.2.1, H.2.2.2.2.2.2.2.2.2.1, H.2.2.2.2.2.2.2.2.2.2⟩⟩

/-- The cells after `_swap_nodes`, case `adj_pred_L_node`. -/
theorem swap_adj_pred_L_node_cells {m : map K V} {p t r l g : Nat}
    {cP ct cr cl cg : color_type} {vP vt vr vl vg : Option (K × V)} {q1 q2 q3 q4 q5 q6 : ptr}
    (c_p : m.mem p = some { color := cP, val := vP, l := some t, r := some l, parent := some g })
    (c_t : m.mem t = some { color := ct, val := vt, l := some r, r := none, parent := some p })
    (c_r : m.mem r = some { color := cr, val := vr, l := q1, r := q2, parent := some t })
    (c_l : m.mem l = some { color := cl, val := vl, l := q3, r := q4, parent := some p })
    (c_g : m.mem g = some { color := cg, val := vg, l := some p, r := q5, parent := q6 })
    (d_l_t : l ≠ t)
    (d_t_l : t ≠ l)
    (d_p_l : p ≠ l)
    (d_g_t : g ≠ t)
    (d_t_g : t ≠ g)
    (d_g_l : g ≠ l)
    (d_r_p : r ≠ p)
    (d_p_r : p ≠ r)
    (d_r_l : r ≠ l)
    (d_r_g : r ≠ g)
    (d_t_r : t ≠ r)
    (d_p_g : p ≠ g)
    (d_t_p : t ≠ p)
    (d_p_t : p ≠ t)
    (d_r_t : r ≠ t)
    (d_l_g : l ≠ g)
    (d_l_r : l ≠ r)
    (d_l_p : l ≠ p)
    (d_g_r : g ≠ r)
    (d_g_p : g ≠ p)
    (hr_p : some p ≠ m._root)
    (hr_t : some t ≠ m._root) :
    ∃ m2, map._swap_nodes m (some p) (some t) = some m2 ∧
      m2.mem p = some { color := ct, val := vP, l := some r, r := none, parent := some t } ∧
      m2.mem t = some { color := cP, val := vt, l := some p, r := some l, parent := some g } ∧
      m2.mem r = some { color := cr, val := vr, l := q1, r := q2, parent := some p } ∧
      m2.mem l = some { color := cl, val := vl, l := q3, r := q4, parent := some t } ∧
      m2.mem g = some { color := cg, val := vg, l := some t, r := q5, parent := q6 } ∧
      (∀ b, b ∉ [l, g, r, p, t] → m2.mem b = m.mem b) ∧
      m2._root = m._root ∧
      m2.brk = m.brk ∧
      m2._sz = m._sz ∧
      m2._cmp_k = m._cmp_k :=
  have hr0 : m._root = m._root := rfl
  Exists.elim (set_parent_step (m := m) c_l (some t)) fun m1 S1 =>
  have w1 : m1.mem l = some { color := cl, val := vl, l := q3, r := q4, parent := some t } := S1.2.1
  Exists.elim (set_l_step (m := m1) ((S1.2.2.1 g d_g_l).trans c_g) (some t)) fun m2 S2 =>
  have w2 : m2.mem g = some { color := cg, val := vg, l := some t, r := q5, parent := q6 } := S2.2.1
  have k2_t := (S2.2.2.1 t d_t_g).trans ((S1.2.2.1 t d_t_l).trans c_t)
  have k2_r := (S2.2.2.1 r d_r_g).trans ((S1.2.2.1 r d_r_l).trans c_r)
  Exists.elim (set_parent_step (m := m2) k2_r (some p)) fun m3 S3 =>
  have w3 : m3.mem r = some { color := cr, val := vr, l := q1, r := q2, parent := some p } := S3.2.1
  have xr3 : m3._root = m._root := S3.2.2.2.2.1.trans (S2.2.2.2.2.1.trans (S1.2.2.2.2.1.trans hr0))
  have k2_p := (S2.2.2.1 p d_p_g).trans ((S1.2.2.1 p d_p_l).trans c_p)
  Exists.elim (set_l_step (m := m3) ((S3.2.2.1 p d_p_r).trans k2_p) (some r)) fun m4 S4 =>
  have w4 : m4.mem p = some { color := cP, val := vP, l := some r, r := some l, parent := some g }
    := S4.2.1
  have k4_t := (S4.2.2.1 t d_t_p).trans ((S3.2.2.1 t d_t_r).trans k2_t)
  Exists.elim (set_r_step (m := m4) w4 none) fun m5 S5 =>
  have w5 : m5.mem p = some { color := cP, val := vP, l := some r, r := none, parent := some g } :=
    S5.2.1
  Exists.elim (set_parent_step (m := m5) w5 (some t)) fun m6 S6 =>
  have w6 : m6.mem p = some { color := cP, val := vP, l := some r, r := none, parent := some t } :=
    S6.2.1
  have xr6 : m6._root = m._root := S6.2.2.2.2.1.trans (S5.2.2.2.2.1.trans (S4.2.2.2.2.1.trans xr3))
  have k6_t := (S6.2.2.1 t d_t_p).trans ((S5.2.2.1 t d_t_p).trans k4_t)
  Exists.elim (set_l_step (m := m6) k6_t (some p)) fun m7 S7 =>
  have w7 : m7.mem t = some { color := ct, val := vt, l := some p, r := none, parent := some p } :=
    S7.2.1
  Exists.elim (set_r_step (m := m7) w7 (some l)) fun m8 S8 =>
  have w8 : m8.mem t = some { color := ct, val := vt, l := some p, r := some l, parent := some p }
    := S8.2.1
  Exists.elim (set_parent_step (m := m8) w8 (some g)) fun m9 S9 =>
  have w9 : m9.mem t = some { color := ct, val := vt, l := some p, r := some l, parent := some g }
    := S9.2.1
  have xr9 : m9._root = m._root := S9.2.2.2.2.1.trans (S8.2.2.2.2.1.trans (S7.2.2.2.2.1.trans xr6))
  have k8_p := (S8.2.2.1 p d_p_t).trans ((S7.2.2.1 p d_p_t).trans w6)
  Exists.elim (set_color_step (m := m9) ((S9.2.2.1 p d_p_t).trans k8_p) ct) fun m10 S10 =>
  have w10 : m10.mem p = some { color := ct, val := vP, l := some r, r := none, parent := some t }
    := S10.2.1
  Exists.elim (set_color_step (m := m10) ((S10.2.2.1 t d_t_p).trans w9) cP) fun m11 S11 =>
  have w11 : m11.mem t = some { color := cP, val := vt, l := some p, r := some l, parent := some g
    } := S11.2.1
  have k5_r := (S5.2.2.1 r d_r_p).trans ((S4.2.2.1 r d_r_p).trans w3)
  have k7_r := (S7.2.2.1 r d_r_t).trans ((S6.2.2.1 r d_r_p).trans k5_r)
  have k9_r := (S9.2.2.1 r d_r_t).trans ((S8.2.2.1 r d_r_t).trans k7_r)
  have k11_r := (S11.2.2.1 r d_r_t).trans ((S10.2.2.1 r d_r_p).trans k9_r)
  have k3_l := (S3.2.2.1 l d_l_r).trans ((S2.2.2.1 l d_l_g).trans w1)
  have k5_l := (S5.2.2.1 l d_l_p).trans ((S4.2.2.1 l d_l_p).trans k3_l)
  have k7_l := (S7.2.2.1 l d_l_t).trans ((S6.2.2.1 l d_l_p).trans k5_l)
  have k9_l := (S9.2.2.1 l d_l_t).trans ((S8.2.2.1 l d_l_t).trans k7_l)
  have k11_l := (S11.2.2.1 l d_l_t).trans ((S10.2.2.1 l d_l_p).trans k9_l)
  have k4_g := (S4.2.2.1 g d_g_p).trans ((S3.2.2.1 g d_g_r).trans w2)
  have k6_g := (S6.2.2.1 g d_g_p).trans ((S5.2.2.1 g d_g_p).trans k4_g)
  have k8_g := (S8.2.2.1 g d_g_t).trans ((S7.2.2.1 g d_g_t).trans k6_g)
  have k10_g := (S10.2.2.1 g d_g_p).trans ((S9.2.2.1 g d_g_t).trans k8_g)
  have hop : map._swap_nodes m (some p) (some t) = some m11 := by
    simp only [map._swap_nodes, map._swap_set_parent, map._swap_set_child,
      (get_l_eq (m := m) c_p : get_l m (some p) = some (some t)),
      (get_r_eq (m := m) c_p : get_r m (some p) = some (some l)), d_l_t, d_t_l, S1.1,
      (get_parent_eq (m := m1) ((S1.2.2.1 p d_p_l).trans c_p) : get_parent m1 (some p) = some (some
        g)),
      d_g_t, d_t_g,
      (get_l_eq (m := m1) ((S1.2.2.1 g d_g_l).trans c_g) : get_l m1 (some g) = some (some p)),
      S2.1, ((S2.2.2.2.2.1.trans (S1.2.2.2.2.1.trans hr0)) : m2._root = m._root), hr_p, hr_t,
      (get_l_eq (m := m2) k2_t : get_l m2 (some t) = some (some r)), d_r_p, d_p_r, S3.1,
      (get_r_eq (m := m3) ((S3.2.2.1 t d_t_r).trans k2_t) : get_r m3 (some t) = some none),
      (get_parent_eq (m := m3) ((S3.2.2.1 t d_t_r).trans k2_t) : get_parent m3 (some t) = some
        (some p)),
      (get_l_eq (m := m3) ((S3.2.2.1 p d_p_r).trans k2_p) : get_l m3 (some p) = some (some t)),
      (get_r_eq (m := m3) ((S3.2.2.1 p d_p_r).trans k2_p) : get_r m3 (some p) = some (some l)),
      (get_parent_eq (m := m3) ((S3.2.2.1 p d_p_r).trans k2_p) : get_parent m3 (some p) = some
        (some g)),
      (get_color_eq (m := m3) ((S3.2.2.1 p d_p_r).trans k2_p) : get_color m3 (some p) = some cP),
      (get_l_eq (m := m3) ((S3.2.2.1 t d_t_r).trans k2_t) : get_l m3 (some t) = some (some r)),
      S4.1, (get_r_eq (m := m4) k4_t : get_r m4 (some t) = some none), S5.1,
      (get_parent_eq (m := m5) ((S5.2.2.1 t d_t_p).trans k4_t) : get_parent m5 (some t) = some
        (some p)),
      S6.1, S7.1, S8.1, S9.1, (get_color_eq (m := m9) w9 : get_color m9 (some t) = some ct),
      S10.1, S11.1, bind_eq_ub, pure_eq_some, ub_bind_some, ne_eq, Option.some.injEq,
      not_false_eq_true, not_true_eq_false, and_self, and_true, true_and, and_false, false_and,
      if_true, if_false, ite_true, ite_false, reduceCtorEq, reduceIte, ite_not, not_not,
      Bool.not_eq_true, decide_eq_true_eq, decide_eq_false_iff_not, decide_True, decide_False,
      Bool.false_eq_true, eq_self_iff_true, Option.isSome_some, Option.isSome_none]
  have h_l : ∀ b, b ∉ [l, g, r, p, t] → b ≠ l := fun b hb e => hb (e ▸ List.Mem.head _)
  have h_g : ∀ b, b ∉ [l, g, r, p, t] → b ≠ g := fun b hb e => hb (e ▸ List.Mem.tail _
    (List.Mem.head _))
  have h_r : ∀ b, b ∉ [l, g, r, p, t] → b ≠ r := fun b hb e => hb (e ▸ List.Mem.tail _
    (List.Mem.tail _ (List.Mem.head _)))
  have h_p : ∀ b, b ∉ [l, g, r, p, t] → b ≠ p := fun b hb e => hb (e ▸ List.Mem.tail _
    (List.Mem.tail _ (List.Mem.tail _ (List.Mem.head _))))
  have h_t : ∀ b, b ∉ [l, g, r, p, t] → b ≠ t := fun b hb e => hb (e ▸ List.Mem.tail _
    (List.Mem.tail _ (List.Mem.tail _ (List.Mem.tail _ (List.Mem.head _)))))
  ⟨m11, hop, ((S11.2.2.1 p d_p_t).trans w10), w11, k11_r, k11_l, ((S11.2.2.1 g d_g_t).trans k10_g),
    (fun b hb => ((S11.2.2.1 b (h_t b hb)).trans ((S10.2.2.1 b (h_p b hb)).trans ((S9.2.2.1 b (h_t
    b hb)).trans ((S8.2.2.1 b (h_t b hb)).trans ((S7.2.2.1 b (h_t b hb)).trans ((S6.2.2.1 b (h_p b
    hb)).trans ((S5.2.2.1 b (h_p b hb)).trans ((S4.2.2.1 b (h_p b hb)).trans ((S3.2.2.1 b (h_r b
    hb)).trans ((S2.2.2.1 b (h_g b hb)).trans (S1.2.2.1 b (h_l b hb))))))))))))),
    (S11.2.2.2.2.1.trans (S10.2.2.2.2.1.trans xr9)), (S11.2.2.2.1.trans (S10.2.2.2.1.trans
    (S9.2.2.2.1.trans (S8.2.2.2.1.trans (S7.2.2.2.1.trans (S6.2.2.2.1.trans (S5.2.2.2.1.trans
    (S4.2.2.2.1.trans (S3.2.2.2.1.trans (S2.2.2.2.1.trans S1.2.2.2.1)))))))))),
    (S11.2.2.2.2.2.1.trans (S10.2.2.2.2.2.1.trans (S9.2.2.2.2.2.1.trans (S8.2.2.2.2.2.1.trans
    (S7.2.2.2.2.2.1.trans (S6.2.2.2.2.2.1.trans (S5.2.2.2.2.2.1.trans (S4.2.2.2.2.2.1.trans
    (S3.2.2.2.2.2.1.trans (S2.2.2.2.2.2.1.trans S1.2.2.2.2.2.1)))))))))), (S11.2.2.2.2.2.2.trans
    (S10.2.2.2.2.2.2.trans (S9.2.2.2.2.2.2.trans (S8.2.2.2.2.2.2.trans (S7.2.2.2.2.2.2.trans
    (S6.2.2.2.2.2.2.trans (S5.2.2.2.2.2.2.trans (S4.2.2.2.2.2.2.trans (S3.2.2.2.2.2.2.trans
    (S2.2.2.2.2.2.2.trans S1.2.2.2.2.2.2))))))))))⟩

/-- Member `_swap_nodes` of a node and its left child, which has no right child. -/
theorem swap_adj_pred_L_node
    {m : map K V} {p t r l g : Nat} {cP ct cr cl cg : color_type}
    {vP vt vr vl vg : Option (K × V)} {rl rr ll lr sg : tree K V} {q : List (frame K V)}
    (h : Rep m (fill ((.L g cg vg sg) :: q)
      (.node p cP vP (.node t ct vt (.node r cr vr rl rr) .nil) (.node l cl vl ll lr)))) :
    ∃ m2, map._swap_nodes m (some p) (some t) = some m2 ∧
      Rep m2 (fill ((.L g cg vg sg) :: q)
        (.node t cP vt (.node p ct vP (.node r cr vr rl rr) .nil) (.node l cl vl ll lr))) ∧ SameAux m m2 :=
  have hs := shaped_fill.1 h.shaped
  have c_p : m.mem p = some { color := cP, val := vP, l := some t, r := some l, parent := some g }
    := hs.2.1
  have c_t : m.mem t = some { color := ct, val := vt, l := some r, r := none, parent := some p } :=
    hs.2.2.1.1
  have c_r : m.mem r = some { color := cr, val := vr, l := rl.top, r := rr.top, parent := some t }
    := hs.2.2.1.2.1.1
  have c_l : m.mem l = some { color := cl, val := vl, l := ll.top, r := lr.top, parent := some p }
    := hs.2.2.2.1
  have c_g : m.mem g = some { color := cg, val := vg, l := some p, r := sg.top, parent := ptop q }
    := hs.1.1
  have hB : (List.flatten [(pbefore q).map Prod.fst, rl.addrs, [r], rr.addrs, [t], [p], ll.addrs,
    [l], lr.addrs, [g], sg.addrs, (pafter q).map Prod.fst]).Nodup := by
    have e : (fill ((.L g cg vg sg) :: q) (.node p cP vP (.node t ct vt (.node r cr vr rl rr) .nil)
      (.node l cl vl ll lr))).addrs =
        List.flatten [(pbefore q).map Prod.fst, rl.addrs, [r], rr.addrs, [t], [p], ll.addrs, [l],
          lr.addrs, [g], sg.addrs, (pafter q).map Prod.fst] := by
      rw [fill_addrs]
      simp [pbefore, pafter, pbefore_append, pafter_append, tree.addrs]
    exact e ▸ h.nodup
  have hr_p : some p ≠ m._root := by
    have h0 := h
    simp only [fill_L, fill_R, fill_append] at h0
    exact Rep.ne_root (f := (.L g cg vg sg)) (q := q) h0 (by simp [mem_fill_addrs])
  have hr_t : some t ≠ m._root := by
    have h0 := h
    simp only [fill_L, fill_R, fill_append] at h0
    exact Rep.ne_root (f := (.L g cg vg sg)) (q := q) h0 (by simp [mem_fill_addrs])
  Exists.elim (swap_adj_pred_L_node_cells c_p c_t c_r c_l c_g (blocks_ne_at hB 7 4 rfl rfl rfl)
    (blocks_ne_at hB 4 7 rfl rfl rfl) (blocks_ne_at hB 5 7 rfl rfl rfl) (blocks_ne_at hB 9 4 rfl
    rfl rfl) (blocks_ne_at hB 4 9 rfl rfl rfl) (blocks_ne_at hB 9 7 rfl rfl rfl) (blocks_ne_at hB 2
    5 rfl rfl rfl) (blocks_ne_at hB 5 2 rfl rfl rfl) (blocks_ne_at hB 2 7 rfl rfl rfl)
    (blocks_ne_at hB 2 9 rfl rfl rfl) (blocks_ne_at hB 4 2 rfl rfl rfl) (blocks_ne_at hB 5 9 rfl
    rfl rfl) (blocks_ne_at hB 4 5 rfl rfl rfl) (blocks_ne_at hB 5 4 rfl rfl rfl) (blocks_ne_at hB 2
    4 rfl rfl rfl) (blocks_ne_at hB 7 9 rfl rfl rfl) (blocks_ne_at hB 7 2 rfl rfl rfl)
    (blocks_ne_at hB 7 5 rfl rfl rfl) (blocks_ne_at hB 9 2 rfl rfl rfl) (blocks_ne_at hB 9 5 rfl
    rfl rfl) hr_p hr_t) fun m2 H =>
  have fr := H.2.2.2.2.2.2.1
  have a_rl : ∀ b ∈ rl.addrs, m2.mem b = m.mem b :=
    region_agree hB [7, 9, 2, 5, 4] [l, g, r, p, t] 1 rfl rfl rfl fr
  have a_rr : ∀ b ∈ rr.addrs, m2.mem b = m.mem b :=
    region_agree hB [7, 9, 2, 5, 4] [l, g, r, p, t] 3 rfl rfl rfl fr
  have a_ll : ∀ b ∈ ll.addrs, m2.mem b = m.mem b :=
    region_agree hB [7, 9, 2, 5, 4] [l, g, r, p, t] 6 rfl rfl rfl fr
  have a_lr : ∀ b ∈ lr.addrs, m2.mem b = m.mem b :=
    region_agree hB [7, 9, 2, 5, 4] [l, g, r, p, t] 8 rfl rfl rfl fr
  have a_sg : ∀ b ∈ sg.addrs, m2.mem b = m.mem b :=
    region_agree hB [7, 9, 2, 5, 4] [l, g, r, p, t] 10 rfl rfl rfl fr
  have a_q : ∀ b ∈ paddrs q, m2.mem b = m.mem b :=
    paddrs_agree (region_agree hB [7, 9, 2, 5, 4] [l, g, r, p, t] 0 rfl rfl rfl fr)
      (region_agree hB [7, 9, 2, 5, 4] [l, g, r, p, t] 11 rfl rfl rfl fr)
  have hroot : m2._root = (fill ((.L g cg vg sg) :: q) (.node t cP vt (.node p ct vP (.node r cr vr
    rl rr) .nil) (.node l cl vl ll lr))).top := by
    rw [H.2.2.2.2.2.2.2.1]
    refine h.root.trans ?_
    simp only [fill_L, fill_R, fill_append]
    exact fill_top_congr rfl
  have hpath : ShapedPath m2.mem ((.L g cg vg sg) :: q) (some t) :=
    ⟨H.2.2.2.2.2.1, Shaped.agree hs.1.2.1 a_sg, ShapedPath.agree_path hs.1.2.2 a_q⟩
  have htree : Shaped m2.mem (some g) (.node t cP vt (.node p ct vP (.node r cr vr rl rr) .nil)
    (.node l cl vl ll lr)) :=
    ⟨H.2.2.1, ⟨H.2.1, ⟨H.2.2.2.1, Shaped.agree hs.2.2.1.2.1.2.1 a_rl, Shaped.agree hs.2.2.1.2.1.2.2
      a_rr⟩, trivial⟩, ⟨H.2.2.2.2.1, Shaped.agree hs.2.2.2.2.1 a_ll, Shaped.agree hs.2.2.2.2.2
      a_lr⟩⟩
  ⟨m2, H.1, h.of_perm (perm_swap_adj_pred _) H.2.2.2.2.2.2.2.2.1 hroot (shaped_fill.2 ⟨hpath,
    htree⟩), ⟨H.2.2.2.2.2.2.2.2.1, H.2.2.2.2.2.2.2.2.2.1, H.2.2.2.2.2.2.2.2.2.2⟩⟩

/-- The cells after `_swap_nodes`, case `far1_succ_L_node`. -/
theorem swap_far1_succ_L_node_cells {m : map K V} {t r k p l g : Nat}
    {ct cr ck cP cl cg : color_type} {vt vr vk vP vl vg : Option (K × V)}
    {q1 q2 q3 q4 q5 q6 q7 : ptr}
    (c_t : m.mem t = some { color := ct, val := vt, l := none, r := some r, parent := some k })
    (c_r : m.mem r = some { color := cr, val := vr, l := q1, r := q2, parent := some t })
    (c_k : m.mem k = some { color := ck, val := vk, l := some t, r := q3, parent := some p })
    (c_p : m.mem p = some { color := cP, val := vP, l := some l, r := some k, parent := some g })
    (c_l : m.mem l = some { color := cl, val := vl, l := q4, r := q5, parent := some p })
    (c_g : m.mem g = some { color := cg, val := vg, l := some p, r := q6, parent := q7 })
    (d_l_t : l ≠ t)
    (d_t_l : t ≠ l)
    (d_p_l : p ≠ l)
    (d_k_t : k ≠ t)
    (d_t_k : t ≠ k)
    (d_k_l : k ≠ l)
    (d_p_k : p ≠ k)
    (d_g_t : g ≠ t)
    (d_t_g : t ≠ g)
    (d_g_l : g ≠ l)
    (d_g_k : g ≠ k)
    (d_r_p : r ≠ p)
    (d_p_r : p ≠ r)
    (d_r_l : r ≠ l)
    (d_r_k : r ≠ k)
    (d_r_g : r ≠ g)
    (d_t_r : t ≠ r)
    (d_k_p : k ≠ p)
    (d_k_g : k ≠ g)
    (d_k_r : k ≠ r)
    (d_p_g : p ≠ g)
    (d_t_p : t ≠ p)
    (d_p_t : p ≠ t)
    (d_r_t : r ≠ t)
    (d_l_k : l ≠ k)
    (d_l_g : l ≠ g)
    (d_l_r : l ≠ r)
    (d_l_p : l ≠ p)
    (d_g_r : g ≠ r)
    (d_g_p : g ≠ p)
    (hr_p : some p ≠ m._root)
    (hr_t : some t ≠ m._root) :
    ∃ m2, map._swap_nodes m (some p) (some t) = some m2 ∧
      m2.mem t = some { color := cP, val := vt, l := some l, r := some k, parent := some g } ∧
      m2.mem r = some { color := cr, val := vr, l := q1, r := q2, parent := some p } ∧
      m2.mem k = some { color := ck, val := vk, l := some p, r := q3, parent := some t } ∧
      m2.mem p = some { color := ct, val := vP, l := none, r := some r, parent := some k } ∧
      m2.mem l = some { color := cl, val := vl, l := q4, r := q5, parent := some t } ∧
      m2.mem g = some { color := cg, val := vg, l := some t, r := q6, parent := q7 } ∧
      (∀ b, b ∉ [l, k, g, r, p, t] → m2.mem b = m.mem b) ∧
      m2._root = m._root ∧
      m2.brk = m.brk ∧
      m2._sz = m._sz ∧
      m2._cmp_k = m._cmp_k :=
  have hr0 : m._root = m._root := rfl
  Exists.elim (set_parent_step (m := m) c_l (some t)) fun m1 S1 =>
  have w1 : m1.mem l = some { color := cl, val := vl, l := q4, r := q5, parent := some t } := S1.2.1
  Exists.elim (set_parent_step (m := m1) ((S1.2.2.1 k d_k_l).trans c_k) (some t)) fun m2 S2 =>
  have w2 : m2.mem k = some { color := ck, val := vk, l := some t, r := q3, parent := some t } :=
    S2.2.1
  have k2_p := (S2.2.2.1 p d_p_k).trans ((S1.2.2.1 p d_p_l).trans c_p)
  have k2_g := (S2.2.2.1 g d_g_k).trans ((S1.2.2.1 g d_g_l).trans c_g)
  Exists.elim (set_l_step (m := m2) k2_g (some t)) fun m3 S3 =>
  have w3 : m3.mem g = some { color := cg, val := vg, l := some t, r := q6, parent := q7 } := S3.2.1
  have xr3 : m3._root = m._root := S3.2.2.2.2.1.trans (S2.2.2.2.2.1.trans (S1.2.2.2.2.1.trans hr0))
  have k2_t := (S2.2.2.1 t d_t_k).trans ((S1.2.2.1 t d_t_l).trans c_t)
  have k2_r := (S2.2.2.1 r d_r_k).trans ((S1.2.2.1 r d_r_l).trans c_r)
  Exists.elim (set_parent_step (m := m3) ((S3.2.2.1 r d_r_g).trans k2_r) (some p)) fun m4 S4 =>
  have w4 : m4.mem r = some { color := cr, val := vr, l := q1, r := q2, parent := some p } := S4.2.1
  have k4_t := (S4.2.2.1 t d_t_r).trans ((S3.2.2.1 t d_t_g).trans k2_t)
  have k4_k := (S4.2.2.1 k d_k_r).trans ((S3.2.2.1 k d_k_g).trans w2)
  Exists.elim (set_l_step (m := m4) k4_k (some p)) fun m5 S5 =>
  have w5 : m5.mem k = some { color := ck, val := vk, l := some p, r := q3, parent := some t } :=
    S5.2.1
  have k4_p := (S4.2.2.1 p d_p_r).trans ((S3.2.2.1 p d_p_g).trans k2_p)
  Exists.elim (set_l_step (m := m5) ((S5.2.2.1 p d_p_k).trans k4_p) none) fun m6 S6 =>
  have w6 : m6.mem p = some { color := cP, val := vP, l := none, r := some k, parent := some g } :=
    S6.2.1
  have xr6 : m6._root = m._root := S6.2.2.2.2.1.trans (S5.2.2.2.2.1.trans (S4.2.2.2.2.1.trans xr3))
  have k6_t := (S6.2.2.1 t d_t_p).trans ((S5.2.2.1 t d_t_k).trans k4_t)
  Exists.elim (set_r_step (m := m6) w6 (some r)) fun m7 S7 =>
  have w7 : m7.mem p = some { color := cP, val := vP, l := none, r := some r, parent := some g } :=
    S7.2.1
  Exists.elim (set_parent_step (m := m7) w7 (some k)) fun m8 S8 =>
  have w8 : m8.mem p = some { color := cP, val := vP, l := none, r := some r, parent := some k } :=
    S8.2.1
  have k8_t := (S8.2.2.1 t d_t_p).trans ((S7.2.2.1 t d_t_p).trans k6_t)
  Exists.elim (set_l_step (m := m8) k8_t (some l)) fun m9 S9 =>
  have w9 : m9.mem t = some { color := ct, val := vt, l := some l, r := some r, parent := some k }
    := S9.2.1
  have xr9 : m9._root = m._root := S9.2.2.2.2.1.trans (S8.2.2.2.2.1.trans (S7.2.2.2.2.1.trans xr6))
  Exists.elim (set_r_step (m := m9) w9 (some k)) fun m10 S10 =>
  have w10 : m10.mem t = some { color := ct, val := vt, l := some l, r := some k, parent := some k
    } := S10.2.1
  Exists.elim (set_parent_step (m := m10) w10 (some g)) fun m11 S11 =>
  have w11 : m11.mem t = some { color := ct, val := vt, l := some l, r := some k, parent := some g
    } := S11.2.1
  have k10_p := (S10.2.2.1 p d_p_t).trans ((S9.2.2.1 p d_p_t).trans w8)
  Exists.elim (set_color_step (m := m11) ((S11.2.2.1 p d_p_t).trans k10_p) ct) fun m12 S12 =>
  have w12 : m12.mem p = some { color := ct, val := vP, l := none, r := some r, parent := some k }
    := S12.2.1
  have xr12 : m12._root = m._root := S12.2.2.2.2.1.trans (S11.2.2.2.2.1.trans (S10.2.2.2.2.1.trans
    xr9))
  Exists.elim (set_color_step (m := m12) ((S12.2.2.1 t d_t_p).trans w11) cP) fun m13 S13 =>
  have w13 : m13.mem t = some { color := cP, val := vt, l := some l, r := some k, parent := some g
    } := S13.2.1
  have k6_r := (S6.2.2.1 r d_r_p).trans ((S5.2.2.1 r d_r_k).trans w4)
  have k8_r := (S8.2.2.1 r d_r_p).trans ((S7.2.2.1 r d_r_p).trans k6_r)
  have k10_r := (S10.2.2.1 r d_r_t).trans ((S9.2.2.1 r d_r_t).trans k8_r)
  have k12_r := (S12.2.2.1 r d_r_p).trans ((S11.2.2.1 r d_r_t).trans k10_r)
  have k7_k := (S7.2.2.1 k d_k_p).trans ((S6.2.2.1 k d_k_p).trans w5)
  have k9_k := (S9.2.2.1 k d_k_t).trans ((S8.2.2.1 k d_k_p).trans k7_k)
  have k11_k := (S11.2.2.1 k d_k_t).trans ((S10.2.2.1 k d_k_t).trans k9_k)
  have k13_k := (S13.2.2.1 k d_k_t).trans ((S12.2.2.1 k d_k_p).trans k11_k)
  have k3_l := (S3.2.2.1 l d_l_g).trans ((S2.2.2.1 l d_l_k).trans w1)
  have k5_l := (S5.2.2.1 l d_l_k).trans ((S4.2.2.1 l d_l_r).trans k3_l)
  have k7_l := (S7.2.2.1 l d_l_p).trans ((S6.2.2.1 l d_l_p).trans k5_l)
  have k9_l := (S9.2.2.1 l d_l_t).trans ((S8.2.2.1 l d_l_p).trans k7_l)
  have k11_l := (S11.2.2.1 l d_l_t).trans ((S10.2.2.1 l d_l_t).trans k9_l)
  have k13_l := (S13.2.2.1 l d_l_t).trans ((S12.2.2.1 l d_l_p).trans k11_l)
  have k5_g := (S5.2.2.1 g d_g_k).trans ((S4.2.2.1 g d_g_r).trans w3)
  have k7_g := (S7.2.2.1 g d_g_p).trans ((S6.2.2.1 g d_g_p).trans k5_g)
  have k9_g := (S9.2.2.1 g d_g_t).trans ((S8.2.2.1 g d_g_p).trans k7_g)
  have k11_g := (S11.2.2.1 g d_g_t).trans ((S10.2.2.1 g d_g_t).trans k9_g)
  have k13_g := (S13.2.2.1 g d_g_t).trans ((S12.2.2.1 g d_g_p).trans k11_g)
  have hop : map._swap_nodes m (some p) (some t) = some m13 := by
    simp only [map._swap_nodes, map._swap_set_parent, map._swap_set_child,
      (get_l_eq (m := m) c_p : get_l m (some p) = some (some l)), d_l_t, d_t_l, S1.1,
      (get_r_eq (m := m1) ((S1.2.2.1 p d_p_l).trans c_p) : get_r m1 (some p) = some (some k)),
      d_k_t, d_t_k, S2.1,
      (get_parent_eq (m := m2) k2_p : get_parent m2 (some p) = some (some g)), d_g_t, d_t_g,
      (get_l_eq (m := m2) k2_g : get_l m2 (some g) = some (some p)), S3.1,
      (xr3 : m3._root = m._root), hr_p, hr_t,
      (get_l_eq (m := m3) ((S3.2.2.1 t d_t_g).trans k2_t) : get_l m3 (some t) = some none),
      (get_r_eq (m := m3) ((S3.2.2.1 t d_t_g).trans k2_t) : get_r m3 (some t) = some (some r)),
      d_r_p, d_p_r, S4.1,
      (get_parent_eq (m := m4) k4_t : get_parent m4 (some t) = some (some k)), d_k_p, d_p_k,
      (get_l_eq (m := m4) k4_k : get_l m4 (some k) = some (some t)), S5.1,
      (get_l_eq (m := m5) ((S5.2.2.1 p d_p_k).trans k4_p) : get_l m5 (some p) = some (some l)),
      (get_r_eq (m := m5) ((S5.2.2.1 p d_p_k).trans k4_p) : get_r m5 (some p) = some (some k)),
      (get_parent_eq (m := m5) ((S5.2.2.1 p d_p_k).trans k4_p) : get_parent m5 (some p) = some
        (some g)),
      (get_color_eq (m := m5) ((S5.2.2.1 p d_p_k).trans k4_p) : get_color m5 (some p) = some cP),
      (get_l_eq (m := m5) ((S5.2.2.1 t d_t_k).trans k4_t) : get_l m5 (some t) = some none), S6.1,
      (get_r_eq (m := m6) k6_t : get_r m6 (some t) = some (some r)), S7.1,
      (get_parent_eq (m := m7) ((S7.2.2.1 t d_t_p).trans k6_t) : get_parent m7 (some t) = some
        (some k)),
      S8.1, S9.1, S10.1, S11.1, (get_color_eq (m := m11) w11 : get_color m11 (some t) = some ct),
      S12.1, S13.1, bind_eq_ub, pure_eq_some, ub_bind_some, ne_eq, Option.some.injEq,
      not_false_eq_true, not_true_eq_false, and_self, and_true, true_and, and_false, false_and,
      if_true, if_false, ite_true, ite_false, reduceCtorEq, reduceIte, ite_not, not_not,
      Bool.not_eq_true, decide_eq_true_eq, decide_eq_false_iff_not, decide_True, decide_False,
      Bool.false_eq_true, eq_self_iff_true, Option.isSome_some, Option.isSome_none]
  have h_l : ∀ b, b ∉ [l, k, g, r, p, t] → b ≠ l := fun b hb e => hb (e ▸ List.Mem.head _)
  have h_k : ∀ b, b ∉ [l, k, g, r, p, t] → b ≠ k := fun b hb e => hb (e ▸ List.Mem.tail _
    (List.Mem.head _))
  have h_g : ∀ b, b ∉ [l, k, g, r, p, t] → b ≠ g := fun b hb e => hb (e ▸ List.Mem.tail _
    (List.Mem.tail _ (List.Mem.head _)))
  have h_r : ∀ b, b ∉ [l, k, g, r, p, t] → b ≠ r := fun b hb e => hb (e ▸ List.Mem.tail _
    (List.Mem.tail _ (List.Mem.tail _ (List.Mem.head _))))
  have h_p : ∀ b, b ∉ [l, k, g, r, p, t] → b ≠ p := fun b hb e => hb (e ▸ List.Mem.tail _
    (List.Mem.tail _ (List.Mem.tail _ (List.Mem.tail _ (List.Mem.head _)))))
  have h_t : ∀ b, b ∉ [l, k, g, r, p, t] → b ≠ t := fun b hb e => hb (e ▸ List.Mem.tail _
    (List.Mem.tail _ (List.Mem.tail _ (List.Mem.tail _ (List.Mem.tail _ (List.Mem.head _))))))
  ⟨m13, hop, w13, ((S13.2.2.1 r d_r_t).trans k12_r), k13_k, ((S13.2.2.1 p d_p_t).trans w12), k13_l,
    k13_g, (fun b hb => ((S13.2.2.1 b (h_t b hb)).trans ((S12.2.2.1 b (h_p b hb)).trans ((S11.2.2.1
    b (h_t b hb)).trans ((S10.2.2.1 b (h_t b hb)).trans ((S9.2.2.1 b (h_t b hb)).trans ((S8.2.2.1 b
    (h_p b hb)).trans ((S7.2.2.1 b (h_p b hb)).trans ((S6.2.2.1 b (h_p b hb)).trans ((S5.2.2.1 b
    (h_k b hb)).trans ((S4.2.2.1 b (h_r b hb)).trans ((S3.2.2.1 b (h_g b hb)).trans ((S2.2.2.1 b
    (h_k b hb)).trans (S1.2.2.1 b (h_l b hb))))))))))))))), (S13.2.2.2.2.1.trans xr12),
    (S13.2.2.2.1.trans (S12.2.2.2.1.trans (S11.2.2.2.1.trans (S10.2.2.2.1.trans (S9.2.2.2.1.trans
    (S8.2.2.2.1.trans (S7.2.2.2.1.trans (S6.2.2.2.1.trans (S5.2.2.2.1.trans (S4.2.2.2.1.trans
    (S3.2.2.2.1.trans (S2.2.2.2.1.trans S1.2.2.2.1)))))))))))), (S13.2.2.2.2.2.1.trans
    (S12.2.2.2.2.2.1.trans (S11.2.2.2.2.2.1.trans (S10.2.2.2.2.2.1.trans (S9.2.2.2.2.2.1.trans
    (S8.2.2.2.2.2.1.trans (S7.2.2.2.2.2.1.trans (S6.2.2.2.2.2.1.trans (S5.2.2.2.2.2.1.trans
    (S4.2.2.2.2.2.1.trans (S3.2.2.2.2.2.1.trans (S2.2.2.2.2.2.1.trans S1.2.2.2.2.2.1)))))))))))),
    (S13.2.2.2.2.2.2.trans (S12.2.2.2.2.2.2.trans (S11.2.2.2.2.2.2.trans (S10.2.2.2.2.2.2.trans
    (S9.2.2.2.2.2.2.trans (S8.2.2.2.2.2.2.trans (S7.2.2.2.2.2.2.trans (S6.2.2.2.2.2.2.trans
    (S5.2.2.2.2.2.2.trans (S4.2.2.2.2.2.2.trans (S3.2.2.2.2.2.2.trans (S2.2.2.2.2.2.2.trans
    S1.2.2.2.2.2.2))))))))))))⟩

/-- Member `_swap_nodes` of a node and the left child of its right child. -/
theorem swap_far1_succ_L_node
    {m : map K V} {t r k p l g : Nat} {ct cr ck cP cl cg : color_type}
    {vt vr vk vP vl vg : Option (K × V)} {rl rr sk ll lr sg : tree K V} {q : List (frame K V)}
    (h : Rep m (fill ((.L k ck vk sk) :: (.R p cP vP (.node l cl vl ll lr)) :: (.L g cg vg sg) :: q)
      (.node t ct vt .nil (.node r cr vr rl rr)))) :
    ∃ m2, map._swap_nodes m (some p) (some t) = some m2 ∧
      Rep m2 (fill ((.L k ck vk sk) :: (.R t cP vt (.node l cl vl ll lr)) :: (.L g cg vg sg) :: q)
        (.node p ct vP .nil (.node r cr vr rl rr))) ∧ SameAux m m2 :=
  have hs := shaped_fill.1 h.shaped
  have c_t : m.mem t = some { color := ct, val := vt, l := none, r := some r, parent := some k } :=
    hs.2.1
  have c_r : m.mem r = some { color := cr, val := vr, l := rl.top, r := rr.top, parent := some t }
    := hs.2.2.2.1
  have c_k : m.mem k = some { color := ck, val := vk, l := some t, r := sk.top, parent := some p }
    := hs.1.1
  have c_p : m.mem p = some { color := cP, val := vP, l := some l, r := some k, parent := some g }
    := hs.1.2.2.1
  have c_l : m.mem l = some { color := cl, val := vl, l := ll.top, r := lr.top, parent := some p }
    := hs.1.2.2.2.1.1
  have c_g : m.mem g = some { color := cg, val := vg, l := some p, r := sg.top, parent := ptop q }
    := hs.1.2.2.2.2.1
  have hB : (List.flatten [(pbefore q).map Prod.fst, ll.addrs, [l], lr.addrs, [p], [t], rl.addrs,
    [r], rr.addrs, [k], sk.addrs, [g], sg.addrs, (pafter q).map Prod.fst]).Nodup := by
    have e : (fill ((.L k ck vk sk) :: (.R p cP vP (.node l cl vl ll lr)) :: (.L g cg vg sg) :: q)
      (.node t ct vt .nil (.node r cr vr rl rr))).addrs =
        List.flatten [(pbefore q).map Prod.fst, ll.addrs, [l], lr.addrs, [p], [t], rl.addrs, [r],
          rr.addrs, [k], sk.addrs, [g], sg.addrs, (pafter q).map Prod.fst] := by
      rw [fill_addrs]
      simp [pbefore, pafter, pbefore_append, pafter_append, tree.addrs]
    exact e ▸ h.nodup
  have hr_p : some p ≠ m._root := by
    have h0 := h
    simp only [fill_L, fill_R, fill_append] at h0
    exact Rep.ne_root (f := (.L g cg vg sg)) (q := q) h0 (by simp [mem_fill_addrs])
  have hr_t : some t ≠ m._root := by
    have h0 := h
    simp only [fill_L, fill_R, fill_append] at h0
    exact Rep.ne_root (f := (.L g cg vg sg)) (q := q) h0 (by simp [mem_fill_addrs])
  Exists.elim (swap_far1_succ_L_node_cells c_t c_r c_k c_p c_l c_g (blocks_ne_at hB 2 5 rfl rfl
    rfl) (blocks_ne_at hB 5 2 rfl rfl rfl) (blocks_ne_at hB 4 2 rfl rfl rfl) (blocks_ne_at hB 9 5
    rfl rfl rfl) (blocks_ne_at hB 5 9 rfl rfl rfl) (blocks_ne_at hB 9 2 rfl rfl rfl) (blocks_ne_at
    hB 4 9 rfl rfl rfl) (blocks_ne_at hB 11 5 rfl rfl rfl) (blocks_ne_at hB 5 11 rfl rfl rfl)
    (blocks_ne_at hB 11 2 rfl rfl rfl) (blocks_ne_at hB 11 9 rfl rfl rfl) (blocks_ne_at hB 7 4 rfl
    rfl rfl) (blocks_ne_at hB 4 7 rfl rfl rfl) (blocks_ne_at hB 7 2 rfl rfl rfl) (blocks_ne_at hB 7
    9 rfl rfl rfl) (blocks_ne_at hB 7 11 rfl rfl rfl) (blocks_ne_at hB 5 7 rfl rfl rfl)
    (blocks_ne_at hB 9 4 rfl rfl rfl) (blocks_ne_at hB 9 11 rfl rfl rfl) (blocks_ne_at hB 9 7 rfl
    rfl rfl) (blocks_ne_at hB 4 11 rfl rfl rfl) (blocks_ne_at hB 5 4 rfl rfl rfl) (blocks_ne_at hB
    4 5 rfl rfl rfl) (blocks_ne_at hB 7 5 rfl rfl rfl) (blocks_ne_at hB 2 9 rfl rfl rfl)
    (blocks_ne_at hB 2 11 rfl rfl rfl) (blocks_ne_at hB 2 7 rfl rfl rfl) (blocks_ne_at hB 2 4 rfl
    rfl rfl) (blocks_ne_at hB 11 7 rfl rfl rfl) (blocks_ne_at hB 11 4 rfl rfl rfl) hr_p hr_t) fun
    m2 H =>
  have fr := H.2.2.2.2.2.2.2.1
  have a_rl : ∀ b ∈ rl.addrs, m2.mem b = m.mem b :=
    region_agree hB [2, 9, 11, 7, 4, 5] [l, k, g, r, p, t] 6 rfl rfl rfl fr
  have a_rr : ∀ b ∈ rr.addrs, m2.mem b = m.mem b :=
    region_agree hB [2, 9, 11, 7, 4, 5] [l, k, g, r, p, t] 8 rfl rfl rfl fr
  have a_sk : ∀ b ∈ sk.addrs, m2.mem b = m.mem b :=
    region_agree hB [2, 9, 11, 7, 4, 5] [l, k, g, r, p, t] 10 rfl rfl rfl fr
  have a_ll : ∀ b ∈ ll.addrs, m2.mem b = m.mem b :=
    region_agree hB [2, 9, 11, 7, 4, 5] [l, k, g, r, p, t] 1 rfl rfl rfl fr
  have a_lr : ∀ b ∈ lr.addrs, m2.mem b = m.mem b :=
    region_agree hB [2, 9, 11, 7, 4, 5] [l, k, g, r, p, t] 3 rfl rfl rfl fr
  have a_sg : ∀ b ∈ sg.addrs, m2.mem b = m.mem b :=
    region_agree hB [2, 9, 11, 7, 4, 5] [l, k, g, r, p, t] 12 rfl rfl rfl fr
  have a_q : ∀ b ∈ paddrs q, m2.mem b = m.mem b :=
    paddrs_agree (region_agree hB [2, 9, 11, 7, 4, 5] [l, k, g, r, p, t] 0 rfl rfl rfl fr)
      (region_agree hB [2, 9, 11, 7, 4, 5] [l, k, g, r, p, t] 13 rfl rfl rfl fr)
  have hroot : m2._root = (fill ((.L k ck vk sk) :: (.R t cP vt (.node l cl vl ll lr)) :: (.L g cg
    vg sg) :: q) (.node p ct vP .nil (.node r cr vr rl rr))).top := by
    rw [H.2.2.2.2.2.2.2.2.1]
    refine h.root.trans ?_
    simp only [fill_L, fill_R, fill_append]
    exact fill_top_congr rfl
  have hpath : ShapedPath m2.mem ((.L k ck vk sk) :: (.R t cP vt (.node l cl vl ll lr)) :: (.L g cg
    vg sg) :: q) (some p) :=
    ⟨H.2.2.2.1, Shaped.agree hs.1.2.1 a_sk, ⟨H.2.1, ⟨H.2.2.2.2.2.1, Shaped.agree hs.1.2.2.2.1.2.1
      a_ll, Shaped.agree hs.1.2.2.2.1.2.2 a_lr⟩, ⟨H.2.2.2.2.2.2.1, Shaped.agree hs.1.2.2.2.2.2.1
      a_sg, ShapedPath.agree_path hs.1.2.2.2.2.2.2 a_q⟩⟩⟩
  have htree : Shaped m2.mem (some k) (.node p ct vP .nil (.node r cr vr rl rr)) :=
    ⟨H.2.2.2.2.1, trivial, ⟨H.2.2.1, Shaped.agree hs.2.2.2.2.1 a_rl, Shaped.agree hs.2.2.2.2.2
      a_rr⟩⟩
  ⟨m2, H.1, h.of_perm (perm_swap_far1_succ _) H.2.2.2.2.2.2.2.2.2.1 hroot (shaped_fill.2 ⟨hpath,
    htree⟩), ⟨H.2.2.2.2.2.2.2.2.2.1, H.2.2.2.2.2.2.2.2.2.2.1, H.2.2.2.2.2.2.2.2.2.2.2⟩⟩

/-- The cells after `_swap_nodes`, case `far2_succ_L_node`. -/
theorem swap_far2_succ_L_node_cells {m : map K V} {t r f k p l g : Nat}
    {ct cr cf ck cP cl cg : color_type} {vt vr vf vk vP vl vg : Option (K × V)}
    {q1 q2 q3 q4 q5 q6 q7 q8 q9 q10 : ptr}
    (c_t : m.mem t = some { color := ct, val := vt, l := none, r := some r, parent := some f })
    (c_r : m.mem r = some { color := cr, val := vr, l := q1, r := q2, parent := some t })
    (c_f : m.mem f = some { color := cf, val := vf, l := some t, r := q3, parent := q4 })
    (c_k : m.mem k = some { color := ck, val := vk, l := q5, r := q6, parent := some p })
    (c_p : m.mem p = some { color := cP, val := vP, l := some l, r := some k, parent := some g })
    (c_l : m.mem l = some { color := cl, val := vl, l := q7, r := q8, parent := some p })
    (c_g : m.mem g = some { color := cg, val := vg, l := some p, r := q9, parent := q10 })
    (d_l_t : l ≠ t)
    (d_t_l : t ≠ l)
    (d_p_l : p ≠ l)
    (d_k_t : k ≠ t)
    (d_t_k : t ≠ k)
    (d_k_l : k ≠ l)
    (d_p_k : p ≠ k)
    (d_g_t : g ≠ t)
    (d_t_g : t ≠ g)
    (d_g_l : g ≠ l)
    (d_g_k : g ≠ k)
    (d_r_p : r ≠ p)
    (d_p_r : p ≠ r)
    (d_r_l : r ≠ l)
    (d_r_k : r ≠ k)
    (d_r_g : r ≠ g)
    (d_t_r : t ≠ r)
    (d_f_p : f ≠ p)
    (d_p_f : p ≠ f)
    (d_f_l : f ≠ l)
    (d_f_k : f ≠ k)
    (d_f_g : f ≠ g)
    (d_f_r : f ≠ r)
    (d_p_g : p ≠ g)
    (d_t_f : t ≠ f)
    (d_t_p : t ≠ p)
    (d_p_t : p ≠ t)
    (d_r_f : r ≠ f)
    (d_r_t : r ≠ t)
    (d_f_t : f ≠ t)
    (d_k_g : k ≠ g)
    (d_k_r : k ≠ r)
    (d_k_f : k ≠ f)
    (d_k_p : k ≠ p)
    (d_l_k : l ≠ k)
    (d_l_g : l ≠ g)
    (d_l_r : l ≠ r)
    (d_l_f : l ≠ f)
    (d_l_p : l ≠ p)
    (d_g_r : g ≠ r)
    (d_g_f : g ≠ f)
    (d_g_p : g ≠ p)
    (hr_p : some p ≠ m._root)
    (hr_t : some t ≠ m._root) :
    ∃ m2, map._swap_nodes m (some p) (some t) = some m2 ∧
      m2.mem t = some { color := cP, val := vt, l := some l, r := some k, parent := some g } ∧
      m2.mem r = some { color := cr, val := vr, l := q1, r := q2, parent := some p } ∧
      m2.mem f = some { color := cf, val := vf, l := some p, r := q3, parent := q4 } ∧
      m2.mem k = some { color := ck, val := vk, l := q5, r := q6, parent := some t } ∧
      m2.mem p = some { color := ct, val := vP, l := none, r := some r, parent := some f } ∧
      m2.mem l = some { color := cl, val := vl, l := q7, r := q8, parent := some t } ∧
      m2.mem g = some { color := cg, val := vg, l := some t, r := q9, parent := q10 } ∧
      (∀ b, b ∉ [l, k, g, r, f, p, t] → m2.mem b = m.mem b) ∧
      m2._root = m._root ∧
      m2.brk = m.brk ∧
      m2._sz = m._sz ∧
      m2._cmp_k = m._cmp_k :=
  have hr0 : m._root = m._root := rfl
  Exists.elim (set_parent_step (m := m) c_l (some t)) fun m1 S1 =>
  have w1 : m1.mem l = some { color := cl, val := vl, l := q7, r := q8, parent := some t } := S1.2.1
  Exists.elim (set_parent_step (m := m1) ((S1.2.2.1 k d_k_l).trans c_k) (some t)) fun m2 S2 =>
  have w2 : m2.mem k = some { color := ck, val := vk, l := q5, r := q6, parent := some t } := S2.2.1
  have k2_p := (S2.2.2.1 p d_p_k).trans ((S1.2.2.1 p d_p_l).trans c_p)
  have k2_g := (S2.2.2.1 g d_g_k).trans ((S1.2.2.1 g d_g_l).trans c_g)
  Exists.elim (set_l_step (m := m2) k2_g (some t)) fun m3 S3 =>
  have w3 : m3.mem g = some { color := cg, val := vg, l := some t, r := q9, parent := q10 } :=
    S3.2.1
  have xr3 : m3._root = m._root := S3.2.2.2.2.1.trans (S2.2.2.2.2.1.trans (S1.2.2.2.2.1.trans hr0))
  have k2_t := (S2.2.2.1 t d_t_k).trans ((S1.2.2.1 t d_t_l).trans c_t)
  have k2_r := (S2.2.2.1 r d_r_k).trans ((S1.2.2.1 r d_r_l).trans c_r)
  Exists.elim (set_parent_step (m := m3) ((S3.2.2.1 r d_r_g).trans k2_r) (some p)) fun m4 S4 =>
  have w4 : m4.mem r = some { color := cr, val := vr, l := q1, r := q2, parent := some p } := S4.2.1
  have k4_t := (S4.2.2.1 t d_t_r).trans ((S3.2.2.1 t d_t_g).trans k2_t)
  have k2_f := (S2.2.2.1 f d_f_k).trans ((S1.2.2.1 f d_f_l).trans c_f)
  have k4_f := (S4.2.2.1 f d_f_r).trans ((S3.2.2.1 f d_f_g).trans k2_f)
  Exists.elim (set_l_step (m := m4) k4_f (some p)) fun m5 S5 =>
  have w5 : m5.mem f = some { color := cf, val := vf, l := some p, r := q3, parent := q4 } := S5.2.1
  have k4_p := (S4.2.2.1 p d_p_r).trans ((S3.2.2.1 p d_p_g).trans k2_p)
  Exists.elim (set_l_step (m := m5) ((S5.2.2.1 p d_p_f).trans k4_p) none) fun m6 S6 =>
  have w6 : m6.mem p = some { color := cP, val := vP, l := none, r := some k, parent := some g } :=
    S6.2.1
  have xr6 : m6._root = m._root := S6.2.2.2.2.1.trans (S5.2.2.2.2.1.trans (S4.2.2.2.2.1.trans xr3))
  have k6_t := (S6.2.2.1 t d_t_p).trans ((S5.2.2.1 t d_t_f).trans k4_t)
  Exists.elim (set_r_step (m := m6) w6 (some r)) fun m7 S7 =>
  have w7 : m7.mem p = some { color := cP, val := vP, l := none, r := some r, parent := some g } :=
    S7.2.1
  Exists.elim (set_parent_step (m := m7) w7 (some f)) fun m8 S8 =>
  have w8 : m8.mem p = some { color := cP, val := vP, l := none, r := some r, parent := some f } :=
    S8.2.1
  have k8_t := (S8.2.2.1 t d_t_p).trans ((S7.2.2.1 t d_t_p).trans k6_t)
  Exists.elim (set_l_step (m := m8) k8_t (some l)) fun m9 S9 =>
  have w9 : m9.mem t = some { color := ct, val := vt, l := some l, r := some r, parent := some f }
    := S9.2.1
  have xr9 : m9._root = m._root := S9.2.2.2.2.1.trans (S8.2.2.2.2.1.trans (S7.2.2.2.2.1.trans xr6))
  Exists.elim (set_r_step (m := m9) w9 (some k)) fun m10 S10 =>
  have w10 : m10.mem t = some { color := ct, val := vt, l := some l, r := some k, parent := some f
    } := S10.2.1
  Exists.elim (set_parent_step (m := m10) w10 (some g)) fun m11 S11 =>
  have w11 : m11.mem t = some { color := ct, val := vt, l := some l, r := some k, parent := some g
    } := S11.2.1
  have k10_p := (S10.2.2.1 p d_p_t).trans ((S9.2.2.1 p d_p_t).trans w8)
  Exists.elim (set_color_step (m := m11) ((S11.2.2.1 p d_p_t).trans k10_p) ct) fun m12 S12 =>
  have w12 : m12.mem p = some { color := ct, val := vP, l := none, r := some r, parent := some f }
    := S12.2.1
  have xr12 : m12._root = m._root := S12.2.2.2.2.1.trans (S11.2.2.2.2.1.trans (S10.2.2.2.2.1.trans
    xr9))
  Exists.elim (set_color_step (m := m12) ((S12.2.2.1 t d_t_p).trans w11) cP) fun m13 S13 =>
  have w13 : m13.mem t = some { color := cP, val := vt, l := some l, r := some k, parent := some g
    } := S13.2.1
  have k6_r := (S6.2.2.1 r d_r_p).trans ((S5.2.2.1 r d_r_f).trans w4)
  have k8_r := (S8.2.2.1 r d_r_p).trans ((S7.2.2.1 r d_r_p).trans k6_r)
  have k10_r := (S10.2.2.1 r d_r_t).trans ((S9.2.2.1 r d_r_t).trans k8_r)
  have k12_r := (S12.2.2.1 r d_r_p).trans ((S11.2.2.1 r d_r_t).trans k10_r)
  have k7_f := (S7.2.2.1 f d_f_p).trans ((S6.2.2.1 f d_f_p).trans w5)
  have k9_f := (S9.2.2.1 f d_f_t).trans ((S8.2.2.1 f d_f_p).trans k7_f)
  have k11_f := (S11.2.2.1 f d_f_t).trans ((S10.2.2.1 f d_f_t).trans k9_f)
  have k13_f := (S13.2.2.1 f d_f_t).trans ((S12.2.2.1 f d_f_p).trans k11_f)
  have k4_k := (S4.2.2.1 k d_k_r).trans ((S3.2.2.1 k d_k_g).trans w2)
  have k6_k := (S6.2.2.1 k d_k_p).trans ((S5.2.2.1 k d_k_f).trans k4_k)
  have k8_k := (S8.2.2.1 k d_k_p).trans ((S7.2.2.1 k d_k_p).trans k6_k)
  have k10_k := (S10.2.2.1 k d_k_t).trans ((S9.2.2.1 k d_k_t).trans k8_k)
  have k12_k := (S12.2.2.1 k d_k_p).trans ((S11.2.2.1 k d_k_t).trans k10_k)
  have k3_l := (S3.2.2.1 l d_l_g).trans ((S2.2.2.1 l d_l_k).trans w1)
  have k5_l := (S5.2.2.1 l d_l_f).trans ((S4.2.2.1 l d_l_r).trans k3_l)
  have k7_l := (S7.2.2.1 l d_l_p).trans ((S6.2.2.1 l d_l_p).trans k5_l)
  have k9_l := (S9.2.2.1 l d_l_t).trans ((S8.2.2.1 l d_l_p).trans k7_l)
  have k11_l := (S11.2.2.1 l d_l_t).trans ((S10.2.2.1 l d_l_t).trans k9_l)
  have k13_l := (S13.2.2.1 l d_l_t).trans ((S12.2.2.1 l d_l_p).trans k11_l)
  have k5_g := (S5.2.2.1 g d_g_f).trans ((S4.2.2.1 g d_g_r).trans w3)
  have k7_g := (S7.2.2.1 g d_g_p).trans ((S6.2.2.1 g d_g_p).trans k5_g)
  have k9_g := (S9.2.2.1 g d_g_t).trans ((S8.2.2.1 g d_g_p).trans k7_g)
  have k11_g := (S11.2.2.1 g d_g_t).trans ((S10.2.2.1 g d_g_t).trans k9_g)
  have k13_g := (S13.2.2.1 g d_g_t).trans ((S12.2.2.1 g d_g_p).trans k11_g)
  have hop : map._swap_nodes m (some p) (some t) = some m13 := by
    simp only [map._swap_nodes, map._swap_set_parent, map._swap_set_child,
      (get_l_eq (m := m) c_p : get_l m (some p) = some (some l)), d_l_t, d_t_l, S1.1,
      (get_r_eq (m := m1) ((S1.2.2.1 p d_p_l).trans c_p) : get_r m1 (some p) = some (some k)),
      d_k_t, d_t_k, S2.1,
      (get_parent_eq (m := m2) k2_p : get_parent m2 (some p) = some (some g)), d_g_t, d_t_g,
      (get_l_eq (m := m2) k2_g : get_l m2 (some g) = some (some p)), S3.1,
      (xr3 : m3._root = m._root), hr_p, hr_t,
      (get_l_eq (m := m3) ((S3.2.2.1 t d_t_g).trans k2_t) : get_l m3 (some t) = some none),
      (get_r_eq (m := m3) ((S3.2.2.1 t d_t_g).trans k2_t) : get_r m3 (some t) = some (some r)),
      d_r_p, d_p_r, S4.1,
      (get_parent_eq (m := m4) k4_t : get_parent m4 (some t) = some (some f)), d_f_p, d_p_f,
      (get_l_eq (m := m4) k4_f : get_l m4 (some f) = some (some t)), S5.1,
      (get_l_eq (m := m5) ((S5.2.2.1 p d_p_f).trans k4_p) : get_l m5 (some p) = some (some l)),
      (get_r_eq (m := m5) ((S5.2.2.1 p d_p_f).trans k4_p) : get_r m5 (some p) = some (some k)),
      (get_parent_eq (m := m5) ((S5.2.2.1 p d_p_f).trans k4_p) : get_parent m5 (some p) = some
        (some g)),
      (get_color_eq (m := m5) ((S5.2.2.1 p d_p_f).trans k4_p) : get_color m5 (some p) = some cP),
      (get_l_eq (m := m5) ((S5.2.2.1 t d_t_f).trans k4_t) : get_l m5 (some t) = some none), S6.1,
      (get_r_eq (m := m6) k6_t : get_r m6 (some t) = some (some r)), S7.1,
      (get_parent_eq (m := m7) ((S7.2.2.1 t d_t_p).trans k6_t) : get_parent m7 (some t) = some
        (some f)),
      S8.1, S9.1, S10.1, S11.1, (get_color_eq (m := m11) w11 : get_color m11 (some t) = some ct),
      S12.1, S13.1, bind_eq_ub, pure_eq_some, ub_bind_some, ne_eq, Option.some.injEq,
      not_false_eq_true, not_true_eq_false, and_self, and_true, true_and, and_false, false_and,
      if_true, if_false, ite_true, ite_false, reduceCtorEq, reduceIte, ite_not, not_not,
      Bool.not_eq_true, decide_eq_true_eq, decide_eq_false_iff_not, decide_True, decide_False,
      Bool.false_eq_true, eq_self_iff_true, Option.isSome_some, Option.isSome_none]
  have h_l : ∀ b, b ∉ [l, k, g, r, f, p, t] → b ≠ l := fun b hb e => hb (e ▸ List.Mem.head _)
  have h_k : ∀ b, b ∉ [l, k, g, r, f, p, t] → b ≠ k := fun b hb e => hb (e ▸ List.Mem.tail _
    (List.Mem.head _))
  have h_g : ∀ b, b ∉ [l, k, g, r, f, p, t] → b ≠ g := fun b hb e => hb (e ▸ List.Mem.tail _
    (List.Mem.tail _ (List.Mem.head _)))
  have h_r : ∀ b, b ∉ [l, k, g, r, f, p, t] → b ≠ r := fun b hb e => hb (e ▸ List.Mem.tail _
    (List.Mem.tail _ (List.Mem.tail _ (List.Mem.head _))))
  have h_f : ∀ b, b ∉ [l, k, g, r, f, p, t] → b ≠ f := fun b hb e => hb (e ▸ List.Mem.tail _
    (List.Mem.tail _ (List.Mem.tail _ (List.Mem.tail _ (List.Mem.head _)))))
  have h_p : ∀ b, b ∉ [l, k, g, r, f, p, t] → b ≠ p := fun b hb e => hb (e ▸ List.Mem.tail _
    (List.Mem.tail _ (List.Mem.tail _ (List.Mem.tail _ (List.Mem.tail _ (List.Mem.head _))))))
  have h_t : ∀ b, b ∉ [l, k, g, r, f, p, t] → b ≠ t := fun b hb e => hb (e ▸ List.Mem.tail _
    (List.Mem.tail _ (List.Mem.tail _ (List.Mem.tail _ (List.Mem.tail _ (List.Mem.tail _
    (List.Mem.head _)))))))
  ⟨m13, hop, w13, ((S13.2.2.1 r d_r_t).trans k12_r), k13_f, ((S13.2.2.1 k d_k_t).trans k12_k),
    ((S13.2.2.1 p d_p_t).trans w12), k13_l, k13_g, (fun b hb => ((S13.2.2.1 b (h_t b hb)).trans
    ((S12.2.2.1 b (h_p b hb)).trans ((S11.2.2.1 b (h_t b hb)).trans ((S10.2.2.1 b (h_t b hb)).trans
    ((S9.2.2.1 b (h_t b hb)).trans ((S8.2.2.1 b (h_p b hb)).trans ((S7.2.2.1 b (h_p b hb)).trans
    ((S6.2.2.1 b (h_p b hb)).trans ((S5.2.2.1 b (h_f b hb)).trans ((S4.2.2.1 b (h_r b hb)).trans
    ((S3.2.2.1 b (h_g b hb)).trans ((S2.2.2.1 b (h_k b hb)).trans (S1.2.2.1 b (h_l b
    hb))))))))))))))), (S13.2.2.2.2.1.trans xr12), (S13.2.2.2.1.trans (S12.2.2.2.1.trans
    (S11.2.2.2.1.trans (S10.2.2.2.1.trans (S9.2.2.2.1.trans (S8.2.2.2.1.trans (S7.2.2.2.1.trans
    (S6.2.2.2.1.trans (S5.2.2.2.1.trans (S4.2.2.2.1.trans (S3.2.2.2.1.trans (S2.2.2.2.1.trans
    S1.2.2.2.1)))))))))))), (S13.2.2.2.2.2.1.trans (S12.2.2.2.2.2.1.trans (S11.2.2.2.2.2.1.trans
    (S10.2.2.2.2.2.1.trans (S9.2.2.2.2.2.1.trans (S8.2.2.2.2.2.1.trans (S7.2.2.2.2.2.1.trans
    (S6.2.2.2.2.2.1.trans (S5.2.2.2.2.2.1.trans (S4.2.2.2.2.2.1.trans (S3.2.2.2.2.2.1.trans
    (S2.2.2.2.2.2.1.trans S1.2.2.2.2.2.1)))))))))))), (S13.2.2.2.2.2.2.trans (S12.2.2.2.2.2.2.trans
    (S11.2.2.2.2.2.2.trans (S10.2.2.2.2.2.2.trans (S9.2.2.2.2.2.2.trans (S8.2.2.2.2.2.2.trans
    (S7.2.2.2.2.2.2.trans (S6.2.2.2.2.2.2.trans (S5.2.2.2.2.2.2.trans (S4.2.2.2.2.2.2.trans
    (S3.2.2.2.2.2.2.trans (S2.2.2.2.2.2.2.trans S1.2.2.2.2.2.2))))))))))))⟩

/-- Member `_swap_nodes` of a node and a left descendant of its right child. -/
theorem swap_far2_succ_L_node
    {m : map K V} {t r f k p l g : Nat} {ct cr cf ck cP cl cg : color_type}
    {vt vr vf vk vP vl vg : Option (K × V)} {rl rr sf sk ll lr sg : tree K V}
    {rm q : List (frame K V)}
    (h : Rep m (fill ((.L f cf vf sf) :: (rm ++ (.L k ck vk sk) :: (.R p cP vP (.node l cl vl ll lr)) :: (.L g cg vg sg) :: q))
      (.node t ct vt .nil (.node r cr vr rl rr)))) :
    ∃ m2, map._swap_nodes m (some p) (some t) = some m2 ∧
      Rep m2 (fill ((.L f cf vf sf) :: (rm ++ (.L k ck vk sk) :: (.R t cP vt (.node l cl vl ll lr)) :: (.L g cg vg sg) :: q))
        (.node p ct vP .nil (.node r cr vr rl rr))) ∧ SameAux m m2 :=
  have hs := shaped_fill.1 h.shaped
  have c_t : m.mem t = some { color := ct, val := vt, l := none, r := some r, parent := some f } :=
    hs.2.1
  have c_r : m.mem r = some { color := cr, val := vr, l := rl.top, r := rr.top, parent := some t }
    := hs.2.2.2.1
  have c_f : m.mem f = some { color := cf, val := vf, l := some t, r := sf.top, parent := ptop ((rm
    ++ (.L k ck vk sk) :: (.R p cP vP (.node l cl vl ll lr)) :: (.L g cg vg sg) :: q)) } := hs.1.1
  have s_rm := hs.1.2.2
  Exists.elim (ShapedPath.drop s_rm) fun hh sp2 =>
  have c_k : m.mem k = some { color := ck, val := vk, l := hh, r := sk.top, parent := some p } :=
    sp2.1
  have c_p : m.mem p = some { color := cP, val := vP, l := some l, r := some k, parent := some g }
    := sp2.2.2.1
  have c_l : m.mem l = some { color := cl, val := vl, l := ll.top, r := lr.top, parent := some p }
    := sp2.2.2.2.1.1
  have c_g : m.mem g = some { color := cg, val := vg, l := some p, r := sg.top, parent := ptop q }
    := sp2.2.2.2.2.1
  have hB : (List.flatten [(pbefore q).map Prod.fst, ll.addrs, [l], lr.addrs, [p], (pbefore rm).map
    Prod.fst, [t], rl.addrs, [r], rr.addrs, [f], sf.addrs, (pafter rm).map Prod.fst, [k], sk.addrs,
    [g], sg.addrs, (pafter q).map Prod.fst]).Nodup := by
    have e : (fill ((.L f cf vf sf) :: (rm ++ (.L k ck vk sk) :: (.R p cP vP (.node l cl vl ll lr))
      :: (.L g cg vg sg) :: q)) (.node t ct vt .nil (.node r cr vr rl rr))).addrs =
        List.flatten [(pbefore q).map Prod.fst, ll.addrs, [l], lr.addrs, [p], (pbefore rm).map
          Prod.fst, [t], rl.addrs, [r], rr.addrs, [f], sf.addrs, (pafter rm).map Prod.fst, [k],
          sk.addrs, [g], sg.addrs, (pafter q).map Prod.fst] := by
      rw [fill_addrs]
      simp [pbefore, pafter, pbefore_append, pafter_append, tree.addrs]
    exact e ▸ h.nodup
  have hr_p : some p ≠ m._root := by
    have h0 := h
    simp only [fill_L, fill_R, fill_append] at h0
    exact Rep.ne_root (f := (.L g cg vg sg)) (q := q) h0 (by simp [mem_fill_addrs])
  have hr_t : some t ≠ m._root := by
    have h0 := h
    simp only [fill_L, fill_R, fill_append] at h0
    exact Rep.ne_root (f := (.L g cg vg sg)) (q := q) h0 (by simp [mem_fill_addrs])
  Exists.elim (swap_far2_succ_L_node_cells c_t c_r c_f c_k c_p c_l c_g (blocks_ne_at hB 2 6 rfl rfl
    rfl) (blocks_ne_at hB 6 2 rfl rfl rfl) (blocks_ne_at hB 4 2 rfl rfl rfl) (blocks_ne_at hB 13 6
    rfl rfl rfl) (blocks_ne_at hB 6 13 rfl rfl rfl) (blocks_ne_at hB 13 2 rfl rfl rfl)
    (blocks_ne_at hB 4 13 rfl rfl rfl) (blocks_ne_at hB 15 6 rfl rfl rfl) (blocks_ne_at hB 6 15 rfl
    rfl rfl) (blocks_ne_at hB 15 2 rfl rfl rfl) (blocks_ne_at hB 15 13 rfl rfl rfl) (blocks_ne_at
    hB 8 4 rfl rfl rfl) (blocks_ne_at hB 4 8 rfl rfl rfl) (blocks_ne_at hB 8 2 rfl rfl rfl)
    (blocks_ne_at hB 8 13 rfl rfl rfl) (blocks_ne_at hB 8 15 rfl rfl rfl) (blocks_ne_at hB 6 8 rfl
    rfl rfl) (blocks_ne_at hB 10 4 rfl rfl rfl) (blocks_ne_at hB 4 10 rfl rfl rfl) (blocks_ne_at hB
    10 2 rfl rfl rfl) (blocks_ne_at hB 10 13 rfl rfl rfl) (blocks_ne_at hB 10 15 rfl rfl rfl)
    (blocks_ne_at hB 10 8 rfl rfl rfl) (blocks_ne_at hB 4 15 rfl rfl rfl) (blocks_ne_at hB 6 10 rfl
    rfl rfl) (blocks_ne_at hB 6 4 rfl rfl rfl) (blocks_ne_at hB 4 6 rfl rfl rfl) (blocks_ne_at hB 8
    10 rfl rfl rfl) (blocks_ne_at hB 8 6 rfl rfl rfl) (blocks_ne_at hB 10 6 rfl rfl rfl)
    (blocks_ne_at hB 13 15 rfl rfl rfl) (blocks_ne_at hB 13 8 rfl rfl rfl) (blocks_ne_at hB 13 10
    rfl rfl rfl) (blocks_ne_at hB 13 4 rfl rfl rfl) (blocks_ne_at hB 2 13 rfl rfl rfl)
    (blocks_ne_at hB 2 15 rfl rfl rfl) (blocks_ne_at hB 2 8 rfl rfl rfl) (blocks_ne_at hB 2 10 rfl
    rfl rfl) (blocks_ne_at hB 2 4 rfl rfl rfl) (blocks_ne_at hB 15 8 rfl rfl rfl) (blocks_ne_at hB
    15 10 rfl rfl rfl) (blocks_ne_at hB 15 4 rfl rfl rfl) hr_p hr_t) fun m2 H =>
  have fr := H.2.2.2.2.2.2.2.2.1
  have a_rl : ∀ b ∈ rl.addrs, m2.mem b = m.mem b :=
    region_agree hB [2, 13, 15, 8, 10, 4, 6] [l, k, g, r, f, p, t] 7 rfl rfl rfl fr
  have a_rr : ∀ b ∈ rr.addrs, m2.mem b = m.mem b :=
    region_agree hB [2, 13, 15, 8, 10, 4, 6] [l, k, g, r, f, p, t] 9 rfl rfl rfl fr
  have a_sf : ∀ b ∈ sf.addrs, m2.mem b = m.mem b :=
    region_agree hB [2, 13, 15, 8, 10, 4, 6] [l, k, g, r, f, p, t] 11 rfl rfl rfl fr
  have a_rm : ∀ b ∈ paddrs rm, m2.mem b = m.mem b :=
    paddrs_agree (region_agree hB [2, 13, 15, 8, 10, 4, 6] [l, k, g, r, f, p, t] 5 rfl rfl rfl fr)
      (region_agree hB [2, 13, 15, 8, 10, 4, 6] [l, k, g, r, f, p, t] 12 rfl rfl rfl fr)
  have a_sk : ∀ b ∈ sk.addrs, m2.mem b = m.mem b :=
    region_agree hB [2, 13, 15, 8, 10, 4, 6] [l, k, g, r, f, p, t] 14 rfl rfl rfl fr
  have a_ll : ∀ b ∈ ll.addrs, m2.mem b = m.mem b :=
    region_agree hB [2, 13, 15, 8, 10, 4, 6] [l, k, g, r, f, p, t] 1 rfl rfl rfl fr
  have a_lr : ∀ b ∈ lr.addrs, m2.mem b = m.mem b :=
    region_agree hB [2, 13, 15, 8, 10, 4, 6] [l, k, g, r, f, p, t] 3 rfl rfl rfl fr
  have a_sg : ∀ b ∈ sg.addrs, m2.mem b = m.mem b :=
    region_agree hB [2, 13, 15, 8, 10, 4, 6] [l, k, g, r, f, p, t] 16 rfl rfl rfl fr
  have a_q : ∀ b ∈ paddrs q, m2.mem b = m.mem b :=
    paddrs_agree (region_agree hB [2, 13, 15, 8, 10, 4, 6] [l, k, g, r, f, p, t] 0 rfl rfl rfl fr)
      (region_agree hB [2, 13, 15, 8, 10, 4, 6] [l, k, g, r, f, p, t] 17 rfl rfl rfl fr)
  have ep_f : ptop ((rm ++ (.L k ck vk sk) :: (.R t cP vt (.node l cl vl ll lr)) :: (.L g cg vg sg)
    :: q)) = ptop ((rm ++ (.L k ck vk sk) :: (.R p cP vP (.node l cl vl ll lr)) :: (.L g cg vg sg)
    :: q)) :=
    ptop_append_cons rm _ _ rfl
  have hroot : m2._root = (fill ((.L f cf vf sf) :: (rm ++ (.L k ck vk sk) :: (.R t cP vt (.node l
    cl vl ll lr)) :: (.L g cg vg sg) :: q)) (.node p ct vP .nil (.node r cr vr rl rr))).top := by
    rw [H.2.2.2.2.2.2.2.2.2.1]
    refine h.root.trans ?_
    simp only [fill_L, fill_R, fill_append]
    exact fill_top_congr rfl
  have hpath : ShapedPath m2.mem ((.L f cf vf sf) :: (rm ++ (.L k ck vk sk) :: (.R t cP vt (.node l
    cl vl ll lr)) :: (.L g cg vg sg) :: q)) (some p) :=
    ⟨(by rw [ep_f]; exact H.2.2.2.1), Shaped.agree hs.1.2.1 a_sf, ShapedPath.splice_L s_rm a_rm c_k
      rfl (⟨H.2.2.2.2.1, Shaped.agree sp2.2.1 a_sk, ⟨H.2.1, ⟨H.2.2.2.2.2.2.1, Shaped.agree
      sp2.2.2.2.1.2.1 a_ll, Shaped.agree sp2.2.2.2.1.2.2 a_lr⟩, ⟨H.2.2.2.2.2.2.2.1, Shaped.agree
      sp2.2.2.2.2.2.1 a_sg, ShapedPath.agree_path sp2.2.2.2.2.2.2 a_q⟩⟩⟩)⟩
  have htree : Shaped m2.mem (some f) (.node p ct vP .nil (.node r cr vr rl rr)) :=
    ⟨H.2.2.2.2.2.1, trivial, ⟨H.2.2.1, Shaped.agree hs.2.2.2.2.1 a_rl, Shaped.agree hs.2.2.2.2.2
      a_rr⟩⟩
  ⟨m2, H.1, h.of_perm (perm_swap_far2_succ _) H.2.2.2.2.2.2.2.2.2.2.1 hroot (shaped_fill.2 ⟨hpath,
    htree⟩), ⟨H.2.2.2.2.2.2.2.2.2.2.1, H.2.2.2.2.2.2.2.2.2.2.2.1, H.2.2.2.2.2.2.2.2.2.2.2.2⟩⟩

/-- The cells after `_swap_nodes`, case `adj_succ_R_nil`. -/
theorem swap_adj_succ_R_nil_cells {m : map K V} {p l t g : Nat}
    {cP cl ct cg : color_type} {vP vl vt vg : Option (K × V)} {q1 q2 q3 q4 : ptr}
    (c_p : m.mem p = some { color := cP, val := vP, l := some l, r := some t, parent := some g })
    (c_l : m.mem l = some { color := cl, val := vl, l := q1, r := q2, parent := some p })
    (c_t : m.mem t = some { color := ct, val := vt, l := none, r := none, parent := some p })
    (c_g : m.mem g = some { color := cg, val := vg, l := q3, r := some p, parent := q4 })
    (d_l_t : l ≠ t)
    (d_t_l : t ≠ l)
    (d_p_l : p ≠ l)
    (d_g_t : g ≠ t)
    (d_t_g : t ≠ g)
    (d_g_l : g ≠ l)
    (d_p_g : p ≠ g)
    (d_t_p : t ≠ p)
    (d_p_t : p ≠ t)
    (d_l_g : l ≠ g)
    (d_l_p : l ≠ p)
    (d_g_p : g ≠ p)
    (t_q3_p : q3 ≠ some p)
    (u_q3_p : some p ≠ q3)
    (hr_p : some p ≠ m._root)
    (hr_t : some t ≠ m._root) :
    ∃ m2, map._swap_nodes m (some p) (some t) = some m2 ∧
      m2.mem p = some { color := ct, val := vP, l := none, r := none, parent := some t } ∧
      m2.mem l = some { color := cl, val := vl, l := q1, r := q2, parent := some t } ∧
      m2.mem t = some { color := cP, val := vt, l := some l, r := some p, parent := some g } ∧
      m2.mem g = some { color := cg, val := vg, l := q3, r := some t, parent := q4 } ∧
      (∀ b, b ∉ [l, g, p, t] → m2.mem b = m.mem b) ∧
      m2._root = m._root ∧
      m2.brk = m.brk ∧
      m2._sz = m._sz ∧
      m2._cmp_k = m._cmp_k :=
  have hr0 : m._root = m._root := rfl
  Exists.elim (set_parent_step (m := m) c_l (some t)) fun m1 S1 =>
  have w1 : m1.mem l = some { color := cl, val := vl, l := q1, r := q2, parent := some t } := S1.2.1
  Exists.elim (set_r_step (m := m1) ((S1.2.2.1 g d_g_l).trans c_g) (some t)) fun m2 S2 =>
  have w2 : m2.mem g = some { color := cg, val := vg, l := q3, r := some t, parent := q4 } := S2.2.1
  have k2_t := (S2.2.2.1 t d_t_g).trans ((S1.2.2.1 t d_t_l).trans c_t)
  have k2_p := (S2.2.2.1 p d_p_g).trans ((S1.2.2.1 p d_p_l).trans c_p)
  Exists.elim (set_l_step (m := m2) k2_p none) fun m3 S3 =>
  have w3 : m3.mem p = some { color := cP, val := vP, l := none, r := some t, parent := some g } :=
    S3.2.1
  have xr3 : m3._root = m._root := S3.2.2.2.2.1.trans (S2.2.2.2.2.1.trans (S1.2.2.2.2.1.trans hr0))
  Exists.elim (set_r_step (m := m3) w3 none) fun m4 S4 =>
  have w4 : m4.mem p = some { color := cP, val := vP, l := none, r := none, parent := some g } :=
    S4.2.1
  have k4_t := (S4.2.2.1 t d_t_p).trans ((S3.2.2.1 t d_t_p).trans k2_t)
  Exists.elim (set_parent_step (m := m4) w4 (some t)) fun m5 S5 =>
  have w5 : m5.mem p = some { color := cP, val := vP, l := none, r := none, parent := some t } :=
    S5.2.1
  Exists.elim (set_l_step (m := m5) ((S5.2.2.1 t d_t_p).trans k4_t) (some l)) fun m6 S6 =>
  have w6 : m6.mem t = some { color := ct, val := vt, l := some l, r := none, parent := some p } :=
    S6.2.1
  have xr6 : m6._root = m._root := S6.2.2.2.2.1.trans (S5.2.2.2.2.1.trans (S4.2.2.2.2.1.trans xr3))
  Exists.elim (set_r_step (m := m6) w6 (some p)) fun m7 S7 =>
  have w7 : m7.mem t = some { color := ct, val := vt, l := some l, r := some p, parent := some p }
    := S7.2.1
  Exists.elim (set_parent_step (m := m7) w7 (some g)) fun m8 S8 =>
  have w8 : m8.mem t = some { color := ct, val := vt, l := some l, r := some p, parent := some g }
    := S8.2.1
  have k7_p := (S7.2.2.1 p d_p_t).trans ((S6.2.2.1 p d_p_t).trans w5)
  Exists.elim (set_color_step (m := m8) ((S8.2.2.1 p d_p_t).trans k7_p) ct) fun m9 S9 =>
  have w9 : m9.mem p = some { color := ct, val := vP, l := none, r := none, parent := some t } :=
    S9.2.1
  have xr9 : m9._root = m._root := S9.2.2.2.2.1.trans (S8.2.2.2.2.1.trans (S7.2.2.2.2.1.trans xr6))
  Exists.elim (set_color_step (m := m9) ((S9.2.2.1 t d_t_p).trans w8) cP) fun m10 S10 =>
  have w10 : m10.mem t = some { color := cP, val := vt, l := some l, r := some p, parent := some g
    } := S10.2.1
  have k3_l := (S3.2.2.1 l d_l_p).trans ((S2.2.2.1 l d_l_g).trans w1)
  have k5_l := (S5.2.2.1 l d_l_p).trans ((S4.2.2.1 l d_l_p).trans k3_l)
  have k7_l := (S7.2.2.1 l d_l_t).trans ((S6.2.2.1 l d_l_t).trans k5_l)
  have k9_l := (S9.2.2.1 l d_l_p).trans ((S8.2.2.1 l d_l_t).trans k7_l)
  have k4_g := (S4.2.2.1 g d_g_p).trans ((S3.2.2.1 g d_g_p).trans w2)
  have k6_g := (S6.2.2.1 g d_g_t).trans ((S5.2.2.1 g d_g_p).trans k4_g)
  have k8_g := (S8.2.2.1 g d_g_t).trans ((S7.2.2.1 g d_g_t).trans k6_g)
  have k10_g := (S10.2.2.1 g d_g_t).trans ((S9.2.2.1 g d_g_p).trans k8_g)
  have hop : map._swap_nodes m (some p) (some t) = some m10 := by
    simp only [map._swap_nodes, map._swap_set_parent, map._swap_set_child,
      (get_l_eq (m := m) c_p : get_l m (some p) = some (some l)), d_l_t, d_t_l, S1.1,
      (get_r_eq (m := m1) ((S1.2.2.1 p d_p_l).trans c_p) : get_r m1 (some p) = some (some t)),
      (get_parent_eq (m := m1) ((S1.2.2.1 p d_p_l).trans c_p) : get_parent m1 (some p) = some (some
        g)),
      d_g_t, d_t_g,
      (get_l_eq (m := m1) ((S1.2.2.1 g d_g_l).trans c_g) : get_l m1 (some g) = some q3), t_q3_p,
      u_q3_p, S2.1, ((S2.2.2.2.2.1.trans (S1.2.2.2.2.1.trans hr0)) : m2._root = m._root), hr_p,
      hr_t, (get_l_eq (m := m2) k2_t : get_l m2 (some t) = some none),
      (get_r_eq (m := m2) k2_t : get_r m2 (some t) = some none),
      (get_parent_eq (m := m2) k2_t : get_parent m2 (some t) = some (some p)),
      (get_l_eq (m := m2) k2_p : get_l m2 (some p) = some (some l)),
      (get_r_eq (m := m2) k2_p : get_r m2 (some p) = some (some t)),
      (get_parent_eq (m := m2) k2_p : get_parent m2 (some p) = some (some g)),
      (get_color_eq (m := m2) k2_p : get_color m2 (some p) = some cP),
      (get_l_eq (m := m2) k2_t : get_l m2 (some t) = some none), S3.1,
      (get_r_eq (m := m3) ((S3.2.2.1 t d_t_p).trans k2_t) : get_r m3 (some t) = some none), S4.1,
      (get_parent_eq (m := m4) k4_t : get_parent m4 (some t) = some (some p)), S5.1, S6.1, S7.1,
      S8.1, (get_color_eq (m := m8) w8 : get_color m8 (some t) = some ct), S9.1, S10.1,
      bind_eq_ub, pure_eq_some, ub_bind_some, ne_eq, Option.some.injEq, not_false_eq_true,
      not_true_eq_false, and_self, and_true, true_and, and_false, false_and, if_true, if_false,
      ite_true, ite_false, reduceCtorEq, reduceIte, ite_not, not_not, Bool.not_eq_true,
      decide_eq_true_eq, decide_eq_false_iff_not, decide_True, decide_False, Bool.false_eq_true,
      eq_self_iff_true, Option.isSome_some, Option.isSome_none]
  have h_l : ∀ b, b ∉ [l, g, p, t] → b ≠ l := fun b hb e => hb (e ▸ List.Mem.head _)
  have h_g : ∀ b, b ∉ [l, g, p, t] → b ≠ g := fun b hb e => hb (e ▸ List.Mem.tail _ (List.Mem.head
    _))
  have h_p : ∀ b, b ∉ [l, g, p, t] → b ≠ p := fun b hb e => hb (e ▸ List.Mem.tail _ (List.Mem.tail
    _ (List.Mem.head _)))
  have h_t : ∀ b, b ∉ [l, g, p, t] → b ≠ t := fun b hb e => hb (e ▸ List.Mem.tail _ (List.Mem.tail
    _ (List.Mem.tail _ (List.Mem.head _))))
  ⟨m10, hop, ((S10.2.2.1 p d_p_t).trans w9), ((S10.2.2.1 l d_l_t).trans k9_l), w10, k10_g, (fun b
    hb => ((S10.2.2.1 b (h_t b hb)).trans ((S9.2.2.1 b (h_p b hb)).trans ((S8.2.2.1 b (h_t b
    hb)).trans ((S7.2.2.1 b (h_t b hb)).trans ((S6.2.2.1 b (h_t b hb)).trans ((S5.2.2.1 b (h_p b
    hb)).trans ((S4.2.2.1 b (h_p b hb)).trans ((S3.2.2.1 b (h_p b hb)).trans ((S2.2.2.1 b (h_g b
    hb)).trans (S1.2.2.1 b (h_l b hb)))))))))))), (S10.2.2.2.2.1.trans xr9), (S10.2.2.2.1.trans
    (S9.2.2.2.1.trans (S8.2.2.2.1.trans (S7.2.2.2.1.trans (S6.2.2.2.1.trans (S5.2.2.2.1.trans
    (S4.2.2.2.1.trans (S3.2.2.2.1.trans (S2.2.2.2.1.trans S1.2.2.2.1))))))))),
    (S10.2.2.2.2.2.1.trans (S9.2.2.2.2.2.1.trans (S8.2.2.2.2.2.1.trans (S7.2.2.2.2.2.1.trans
    (S6.2.2.2.2.2.1.trans (S5.2.2.2.2.2.1.trans (S4.2.2.2.2.2.1.trans (S3.2.2.2.2.2.1.trans
    (S2.2.2.2.2.2.1.trans S1.2.2.2.2.2.1))))))))), (S10.2.2.2.2.2.2.trans (S9.2.2.2.2.2.2.trans
    (S8.2.2.2.2.2.2.trans (S7.2.2.2.2.2.2.trans (S6.2.2.2.2.2.2.trans (S5.2.2.2.2.2.2.trans
    (S4.2.2.2.2.2.2.trans (S3.2.2.2.2.2.2.trans (S2.2.2.2.2.2.2.trans S1.2.2.2.2.2.2)))))))))⟩

/-- Member `_swap_nodes` of a node and its right child, which has no left child. -/
theorem swap_adj_succ_R_nil
    {m : map K V} {p l t g : Nat} {cP cl ct cg : color_type} {vP vl vt vg : Option (K × V)}
    {ll lr sg : tree K V} {q : List (frame K V)}
    (h : Rep m (fill ((.R g cg vg sg) :: q)
      (.node p cP vP (.node l cl vl ll lr) (.node t ct vt .nil .nil)))) :
    ∃ m2, map._swap_nodes m (some p) (some t) = some m2 ∧
      Rep m2 (fill ((.R g cg vg sg) :: q)
        (.node t cP vt (.node l cl vl ll lr) (.node p ct vP .nil .nil))) ∧ SameAux m m2 :=
  have hs := shaped_fill.1 h.shaped
  have c_p : m.mem p = some { color := cP, val := vP, l := some l, r := some t, parent := some g }
    := hs.2.1
  have c_l : m.mem l = some { color := cl, val := vl, l := ll.top, r := lr.top, parent := some p }
    := hs.2.2.1.1
  have c_t : m.mem t = some { color := ct, val := vt, l := none, r := none, parent := some p } :=
    hs.2.2.2.1
  have c_g : m.mem g = some { color := cg, val := vg, l := sg.top, r := some p, parent := ptop q }
    := hs.1.1
  have hB : (List.flatten [(pbefore q).map Prod.fst, sg.addrs, [g], ll.addrs, [l], lr.addrs, [p],
    [t], (pafter q).map Prod.fst]).Nodup := by
    have e : (fill ((.R g cg vg sg) :: q) (.node p cP vP (.node l cl vl ll lr) (.node t ct vt .nil
      .nil))).addrs =
        List.flatten [(pbefore q).map Prod.fst, sg.addrs, [g], ll.addrs, [l], lr.addrs, [p], [t],
          (pafter q).map Prod.fst] := by
      rw [fill_addrs]
      simp [pbefore, pafter, pbefore_append, pafter_append, tree.addrs]
    exact e ▸ h.nodup
  have hr_p : some p ≠ m._root := by
    have h0 := h
    simp only [fill_L, fill_R, fill_append] at h0
    exact Rep.ne_root (f := (.R g cg vg sg)) (q := q) h0 (by simp [mem_fill_addrs])
  have hr_t : some t ≠ m._root := by
    have h0 := h
    simp only [fill_L, fill_R, fill_append] at h0
    exact Rep.ne_root (f := (.R g cg vg sg)) (q := q) h0 (by simp [mem_fill_addrs])
  Exists.elim (swap_adj_succ_R_nil_cells c_p c_l c_t c_g (blocks_ne_at hB 4 7 rfl rfl rfl)
    (blocks_ne_at hB 7 4 rfl rfl rfl) (blocks_ne_at hB 6 4 rfl rfl rfl) (blocks_ne_at hB 2 7 rfl
    rfl rfl) (blocks_ne_at hB 7 2 rfl rfl rfl) (blocks_ne_at hB 2 4 rfl rfl rfl) (blocks_ne_at hB 6
    2 rfl rfl rfl) (blocks_ne_at hB 7 6 rfl rfl rfl) (blocks_ne_at hB 6 7 rfl rfl rfl)
    (blocks_ne_at hB 4 2 rfl rfl rfl) (blocks_ne_at hB 4 6 rfl rfl rfl) (blocks_ne_at hB 2 6 rfl
    rfl rfl) (tree.top_ne_of_not_mem (blocks_not_mem_at hB 6 1 rfl rfl rfl))
    (tree.ne_top_of_not_mem (blocks_not_mem_at hB 6 1 rfl rfl rfl)) hr_p hr_t) fun m2 H =>
  have fr := H.2.2.2.2.2.1
  have a_ll : ∀ b ∈ ll.addrs, m2.mem b = m.mem b :=
    region_agree hB [4, 2, 6, 7] [l, g, p, t] 3 rfl rfl rfl fr
  have a_lr : ∀ b ∈ lr.addrs, m2.mem b = m.mem b :=
    region_agree hB [4, 2, 6, 7] [l, g, p, t] 5 rfl rfl rfl fr
  have a_sg : ∀ b ∈ sg.addrs, m2.mem b = m.mem b :=
    region_agree hB [4, 2, 6, 7] [l, g, p, t] 1 rfl rfl rfl fr
  have a_q : ∀ b ∈ paddrs q, m2.mem b = m.mem b :=
    paddrs_agree (region_agree hB [4, 2, 6, 7] [l, g, p, t] 0 rfl rfl rfl fr)
      (region_agree hB [4, 2, 6, 7] [l, g, p, t] 8 rfl rfl rfl fr)
  have hroot : m2._root = (fill ((.R g cg vg sg) :: q) (.node t cP vt (.node l cl vl ll lr) (.node
    p ct vP .nil .nil))).top := by
    rw [H.2.2.2.2.2.2.1]
    refine h.root.trans ?_
    simp only [fill_L, fill_R, fill_append]
    exact fill_top_congr rfl
  have hpath : ShapedPath m2.mem ((.R g cg vg sg) :: q) (some t) :=
    ⟨H.2.2.2.2.1, Shaped.agree hs.1.2.1 a_sg, ShapedPath.agree_path hs.1.2.2 a_q⟩
  have htree : Shaped m2.mem (some g) (.node t cP vt (.node l cl vl ll lr) (.node p ct vP .nil
    .nil)) :=
    ⟨H.2.2.2.1, ⟨H.2.2.1, Shaped.agree hs.2.2.1.2.1 a_ll, Shaped.agree hs.2.2.1.2.2 a_lr⟩, ⟨H.2.1,
      trivial, trivial⟩⟩
  ⟨m2, H.1, h.of_perm (perm_swap_adj_succ _) H.2.2.2.2.2.2.2.1 hroot (shaped_fill.2 ⟨hpath,
    htree⟩), ⟨H.2.2.2.2.2.2.2.1, H.2.2.2.2.2.2.2.2.1, H.2.2.2.2.2.2.2.2.2⟩⟩

/-- The cells after `_swap_nodes`, case `adj_pred_R_nil`. -/
theorem swap_adj_pred_R_nil_cells {m : map K V} {p t l g : Nat}
    {cP ct cl cg : color_type} {vP vt vl vg : Option (K × V)} {q1 q2 q3 q4 : ptr}
    (c_p : m.mem p = some { color := cP, val := vP, l := some t, r := some l, parent := some g })
    (c_t : m.mem t = some { color := ct, val := vt, l := none, r := none, parent := some p })
    (c_l : m.mem l = some { color := cl, val := vl, l := q1, r := q2, parent := some p })
    (c_g : m.mem g = some { color := cg, val := vg, l := q3, r := some p, parent := q4 })
    (d_l_t : l ≠ t)
    (d_t_l : t ≠ l)
    (d_p_l : p ≠ l)
    (d_g_t : g ≠ t)
    (d_t_g : t ≠ g)
    (d_g_l : g ≠ l)
    (d_p_g : p ≠ g)
    (d_t_p : t ≠ p)
    (d_p_t : p ≠ t)
    (d_l_g : l ≠ g)
    (d_l_p : l ≠ p)
    (d_g_p : g ≠ p)
    (t_q3_p : q3 ≠ some p)
    (u_q3_p : some p ≠ q3)
    (hr_p : some p ≠ m._root)
    (hr_t : some t ≠ m._root) :
    ∃ m2, map._swap_nodes m (some p) (some t) = some m2 ∧
      m2.mem p = some { color := ct, val := vP, l := none, r := none, parent := some t } ∧
      m2.mem t = some { color := cP, val := vt, l := some p, r := some l, parent := some g } ∧
      m2.mem l = some { color := cl, val := vl, l := q1, r := q2, parent := some t } ∧
      m2.mem g = some { color := cg, val := vg, l := q3, r := some t, parent := q4 } ∧
      (∀ b, b ∉ [l, g, p, t] → m2.mem b = m.mem b) ∧
      m2._root = m._root ∧
      m2.brk = m.brk ∧
      m2._sz = m._sz ∧
      m2._cmp_k = m._cmp_k :=
  have hr0 : m._root = m._root := rfl
  Exists.elim (set_parent_step (m := m) c_l (some t)) fun m1 S1 =>
  have w1 : m1.mem l = some { color := cl, val := vl, l := q1, r := q2, parent := some t } := S1.2.1
  Exists.elim (set_r_step (m := m1) ((S1.2.2.1 g d_g_l).trans c_g) (some t)) fun m2 S2 =>
  have w2 : m2.mem g = some { color := cg, val := vg, l := q3, r := some t, parent := q4 } := S2.2.1
  have k2_t := (S2.2.2.1 t d_t_g).trans ((S1.2.2.1 t d_t_l).trans c_t)
  have k2_p := (S2.2.2.1 p d_p_g).trans ((S1.2.2.1 p d_p_l).trans c_p)
  Exists.elim (set_l_step (m := m2) k2_p none) fun m3 S3 =>
  have w3 : m3.mem p = some { color := cP, val := vP, l := none, r := some l, parent := some g } :=
    S3.2.1
  have xr3 : m3._root = m._root := S3.2.2.2.2.1.trans (S2.2.2.2.2.1.trans (S1.2.2.2.2.1.trans hr0))
  Exists.elim (set_r_step (m := m3) w3 none) fun m4 S4 =>
  have w4 : m4.mem p = some { color := cP, val := vP, l := none, r := none, parent := some g } :=
    S4.2.1
  have k4_t := (S4.2.2.1 t d_t_p).trans ((S3.2.2.1 t d_t_p).trans k2_t)
  Exists.elim (set_parent_step (m := m4) w4 (some t)) fun m5 S5 =>
  have w5 : m5.mem p = some { color := cP, val := vP, l := none, r := none, parent := some t } :=
    S5.2.1
  Exists.elim (set_l_step (m := m5) ((S5.2.2.1 t d_t_p).trans k4_t) (some p)) fun m6 S6 =>
  have w6 : m6.mem t = some { color := ct, val := vt, l := some p, r := none, parent := some p } :=
    S6.2.1
  have xr6 : m6._root = m._root := S6.2.2.2.2.1.trans (S5.2.2.2.2.1.trans (S4.2.2.2.2.1.trans xr3))
  Exists.elim (set_r_step (m := m6) w6 (some l)) fun m7 S7 =>
  have w7 : m7.mem t = some { color := ct, val := vt, l := some p, r := some l, parent := some p }
    := S7.2.1
  Exists.elim (set_parent_step (m := m7) w7 (some g)) fun m8 S8 =>
  have w8 : m8.mem t = some { color := ct, val := vt, l := some p, r := some l, parent := some g }
    := S8.2.1
  have k7_p := (S7.2.2.1 p d_p_t).trans ((S6.2.2.1 p d_p_t).trans w5)
  Exists.elim (set_color_step (m := m8) ((S8.2.2.1 p d_p_t).trans k7_p) ct) fun m9 S9 =>
  have w9 : m9.mem p = some { color := ct, val := vP, l := none, r := none, parent := some t } :=
    S9.2.1
  have xr9 : m9._root = m._root := S9.2.2.2.2.1.trans (S8.2.2.2.2.1.trans (S7.2.2.2.2.1.trans xr6))
  Exists.elim (set_color_step (m := m9) ((S9.2.2.1 t d_t_p).trans w8) cP) fun m10 S10 =>
  have w10 : m10.mem t = some { color := cP, val := vt, l := some p, r := some l, parent := some g
    } := S10.2.1
  have k3_l := (S3.2.2.1 l d_l_p).trans ((S2.2.2.1 l d_l_g).trans w1)
  have k5_l := (S5.2.2.1 l d_l_p).trans ((S4.2.2.1 l d_l_p).trans k3_l)
  have k7_l := (S7.2.2.1 l d_l_t).trans ((S6.2.2.1 l d_l_t).trans k5_l)
  have k9_l := (S9.2.2.1 l d_l_p).trans ((S8.2.2.1 l d_l_t).trans k7_l)
  have k4_g := (S4.2.2.1 g d_g_p).trans ((S3.2.2.1 g d_g_p).trans w2)
  have k6_g := (S6.2.2.1 g d_g_t).trans ((S5.2.2.1 g d_g_p).trans k4_g)
  have k8_g := (S8.2.2.1 g d_g_t).trans ((S7.2.2.1 g d_g_t).trans k6_g)
  have k10_g := (S10.2.2.1 g d_g_t).trans ((S9.2.2.1 g d_g_p).trans k8_g)
  have hop : map._swap_nodes m (some p) (some t) = some m10 := by
    simp only [map._swap_nodes, map._swap_set_parent, map._swap_set_child,
      (get_l_eq (m := m) c_p : get_l m (some p) = some (some t)),
      (get_r_eq (m := m) c_p : get_r m (some p) = some (some l)), d_l_t, d_t_l, S1.1,
      (get_parent_eq (m := m1) ((S1.2.2.1 p d_p_l).trans c_p) : get_parent m1 (some p) = some (some
        g)),
      d_g_t, d_t_g,
      (get_l_eq (m := m1) ((S1.2.2.1 g d_g_l).trans c_g) : get_l m1 (some g) = some q3), t_q3_p,
      u_q3_p, S2.1, ((S2.2.2.2.2.1.trans (S1.2.2.2.2.1.trans hr0)) : m2._root = m._root), hr_p,
      hr_t, (get_l_eq (m := m2) k2_t : get_l m2 (some t) = some none),
      (get_r_eq (m := m2) k2_t : get_r m2 (some t) = some none),
      (get_parent_eq (m := m2) k2_t : get_parent m2 (some t) = some (some p)),
      (get_l_eq (m := m2) k2_p : get_l m2 (some p) = some (some t)),
      (get_r_eq (m := m2) k2_p : get_r m2 (some p) = some (some l)),
      (get_parent_eq (m := m2) k2_p : get_parent m2 (some p) = some (some g)),
      (get_color_eq (m := m2) k2_p : get_color m2 (some p) = some cP),
      (get_l_eq (m := m2) k2_t : get_l m2 (some t) = some none), S3.1,
      (get_r_eq (m := m3) ((S3.2.2.1 t d_t_p).trans k2_t) : get_r m3 (some t) = some none), S4.1,
      (get_parent_eq (m := m4) k4_t : get_parent m4 (some t) = some (some p)), S5.1, S6.1, S7.1,
      S8.1, (get_color_eq (m := m8) w8 : get_color m8 (some t) = some ct), S9.1, S10.1,
      bind_eq_ub, pure_eq_some, ub_bind_some, ne_eq, Option.some.injEq, not_false_eq_true,
      not_true_eq_false, and_self, and_true, true_and, and_false, false_and, if_true, if_false,
      ite_true, ite_false, reduceCtorEq, reduceIte, ite_not, not_not, Bool.not_eq_true,
      decide_eq_true_eq, decide_eq_false_iff_not, decide_True, decide_False, Bool.false_eq_true,
      eq_self_iff_true, Option.isSome_some, Option.isSome_none]
  have h_l : ∀ b, b ∉ [l, g, p, t] → b ≠ l := fun b hb e => hb (e ▸ List.Mem.head _)
  have h_g : ∀ b, b ∉ [l, g, p, t] → b ≠ g := fun b hb e => hb (e ▸ List.Mem.tail _ (List.Mem.head
    _))
  have h_p : ∀ b, b ∉ [l, g, p, t] → b ≠ p := fun b hb e => hb (e ▸ List.Mem.tail _ (List.Mem.tail
    _ (List.Mem.head _)))
  have h_t : ∀ b, b ∉ [l, g, p, t] → b ≠ t := fun b hb e => hb (e ▸ List.Mem.tail _ (List.Mem.tail
    _ (List.Mem.tail _ (List.Mem.head _))))
  ⟨m10, hop, ((S10.2.2.1 p d_p_t).trans w9), w10, ((S10.2.2.1 l d_l_t).trans k9_l), k10_g, (fun b
    hb => ((S10.2.2.1 b (h_t b hb)).trans ((S9.2.2.1 b (h_p b hb)).trans ((S8.2.2.1 b (h_t b
    hb)).trans ((S7.2.2.1 b (h_t b hb)).trans ((S6.2.2.1 b (h_t b hb)).trans ((S5.2.2.1 b (h_p b
    hb)).trans ((S4.2.2.1 b (h_p b hb)).trans ((S3.2.2.1 b (h_p b hb)).trans ((S2.2.2.1 b (h_g b
    hb)).trans (S1.2.2.1 b (h_l b hb)))))))))))), (S10.2.2.2.2.1.trans xr9), (S10.2.2.2.1.trans
    (S9.2.2.2.1.trans (S8.2.2.2.1.trans (S7.2.2.2.1.trans (S6.2.2.2.1.trans (S5.2.2.2.1.trans
    (S4.2.2.2.1.trans (S3.2.2.2.1.trans (S2.2.2.2.1.trans S1.2.2.2.1))))))))),
    (S10.2.2.2.2.2.1.trans (S9.2.2.2.2.2.1.trans (S8.2.2.2.2.2.1.trans (S7.2.2.2.2.2.1.trans
    (S6.2.2.2.2.2.1.trans (S5.2.2.2.2.2.1.trans (S4.2.2.2.2.2.1.trans (S3.2.2.2.2.2.1.trans
    (S2.2.2.2.2.2.1.trans S1.2.2.2.2.2.1))))))))), (S10.2.2.2.2.2.2.trans (S9.2.2.2.2.2.2.trans
    (S8.2.2.2.2.2.2.trans (S7.2.2.2.2.2.2.trans (S6.2.2.2.2.2.2.trans (S5.2.2.2.2.2.2.trans
    (S4.2.2.2.2.2.2.trans (S3.2.2.2.2.2.2.trans (S2.2.2.2.2.2.2.trans S1.2.2.2.2.2.2)))))))))⟩

/-- Member `_swap_nodes` of a node and its left child, which has no right child. -/
theorem swap_adj_pred_R_nil
    {m : map K V} {p t l g : Nat} {cP ct cl cg : color_type} {vP vt vl vg : Option (K × V)}
    {ll lr sg : tree K V} {q : List (frame K V)}
    (h : Rep m (fill ((.R g cg vg sg) :: q)
      (.node p cP vP (.node t ct vt .nil .nil) (.node l cl vl ll lr)))) :
    ∃ m2, map._swap_nodes m (some p) (some t) = some m2 ∧
      Rep m2 (fill ((.R g cg vg sg) :: q)
        (.node t cP vt (.node p ct vP .nil .nil) (.node l cl vl ll lr))) ∧ SameAux m m2 :=
  have hs := shaped_fill.1 h.shaped
  have c_p : m.mem p = some { color := cP, val := vP, l := some t, r := some l, parent := some g }
    := hs.2.1
  have c_t : m.mem t = some { color := ct, val := vt, l := none, r := none, parent := some p } :=
    hs.2.2.1.1
  have c_l : m.mem l = some { color := cl, val := vl, l := ll.top, r := lr.top, parent := some p }
    := hs.2.2.2.1
  have c_g : m.mem g = some { color := cg, val := vg, l := sg.top, r := some p, parent := ptop q }
    := hs.1.1
  have hB : (List.flatten [(pbefore q).map Prod.fst, sg.addrs, [g], [t], [p], ll.addrs, [l],
    lr.addrs, (pafter q).map Prod.fst]).Nodup := by
    have e : (fill ((.R g cg vg sg) :: q) (.node p cP vP (.node t ct vt .nil .nil) (.node l cl vl
      ll lr))).addrs =
        List.flatten [(pbefore q).map Prod.fst, sg.addrs, [g], [t], [p], ll.addrs, [l], lr.addrs,
          (pafter q).map Prod.fst] := by
      rw [fill_addrs]
      simp [pbefore, pafter, pbefore_append, pafter_append, tree.addrs]
    exact e ▸ h.nodup
  have hr_p : some p ≠ m._root := by
    have h0 := h
    simp only [fill_L, fill_R, fill_append] at h0
    exact Rep.ne_root (f := (.R g cg vg sg)) (q := q) h0 (by simp [mem_fill_addrs])
  have hr_t : some t ≠ m._root := by
    have h0 := h
    simp only [fill_L, fill_R, fill_append] at h0
    exact Rep.ne_root (f := (.R g cg vg sg)) (q := q) h0 (by simp [mem_fill_addrs])
  Exists.elim (swap_adj_pred_R_nil_cells c_p c_t c_l c_g (blocks_ne_at hB 6 3 rfl rfl rfl)
    (blocks_ne_at hB 3 6 rfl rfl rfl) (blocks_ne_at hB 4 6 rfl rfl rfl) (blocks_ne_at hB 2 3 rfl
    rfl rfl) (blocks_ne_at hB 3 2 rfl rfl rfl) (blocks_ne_at hB 2 6 rfl rfl rfl) (blocks_ne_at hB 4
    2 rfl rfl rfl) (blocks_ne_at hB 3 4 rfl rfl rfl) (blocks_ne_at hB 4 3 rfl rfl rfl)
    (blocks_ne_at hB 6 2 rfl rfl rfl) (blocks_ne_at hB 6 4 rfl rfl rfl) (blocks_ne_at hB 2 4 rfl
    rfl rfl) (tree.top_ne_of_not_mem (blocks_not_mem_at hB 4 1 rfl rfl rfl))
    (tree.ne_top_of_not_mem (blocks_not_mem_at hB 4 1 rfl rfl rfl)) hr_p hr_t) fun m2 H =>
  have fr := H.2.2.2.2.2.1
  have a_ll : ∀ b ∈ ll.addrs, m2.mem b = m.mem b :=
    region_agree hB [6, 2, 4, 3] [l, g, p, t] 5 rfl rfl rfl fr
  have a_lr : ∀ b ∈ lr.addrs, m2.mem b = m.mem b :=
    region_agree hB [6, 2, 4, 3] [l, g, p, t] 7 rfl rfl rfl fr
  have a_sg : ∀ b ∈ sg.addrs, m2.mem b = m.mem b :=
    region_agree hB [6, 2, 4, 3] [l, g, p, t] 1 rfl rfl rfl fr
  have a_q : ∀ b ∈ paddrs q, m2.mem b = m.mem b :=
    paddrs_agree (region_agree hB [6, 2, 4, 3] [l, g, p, t] 0 rfl rfl rfl fr)
      (region_agree hB [6, 2, 4, 3] [l, g, p, t] 8 rfl rfl rfl fr)
  have hroot : m2._root = (fill ((.R g cg vg sg) :: q) (.node t cP vt (.node p ct vP .nil .nil)
    (.node l cl vl ll lr))).top := by
    rw [H.2.2.2.2.2.2.1]
    refine h.root.trans ?_
    simp only [fill_L, fill_R, fill_append]
    exact fill_top_congr rfl
  have hpath : ShapedPath m2.mem ((.R g cg vg sg) :: q) (some t) :=
    ⟨H.2.2.2.2.1, Shaped.agree hs.1.2.1 a_sg, ShapedPath.agree_path hs.1.2.2 a_q⟩
  have htree : Shaped m2.mem (some g) (.node t cP vt (.node p ct vP .nil .nil) (.node l cl vl ll
    lr)) :=
    ⟨H.2.2.1, ⟨H.2.1, trivial, trivial⟩, ⟨H.2.2.2.1, Shaped.agree hs.2.2.2.2.1 a_ll, Shaped.agree
      hs.2.2.2.2.2 a_lr⟩⟩
  ⟨m2, H.1, h.of_perm (perm_swap_adj_pred _) H.2.2.2.2.2.2.2.1 hroot (shaped_fill.2 ⟨hpath,
    htree⟩), ⟨H.2.2.2.2.2.2.2.1, H.2.2.2.2.2.2.2.2.1, H.2.2.2.2.2.2.2.2.2⟩⟩

/-- The cells after `_swap_nodes`, case `far1_succ_R_nil`. -/
theorem swap_far1_succ_R_nil_cells {m : map K V} {t k p l g : Nat}
    {ct ck cP cl cg : color_type} {vt vk vP vl vg : Option (K × V)} {q1 q2 q3 q4 q5 : ptr}
    (c_t : m.mem t = some { color := ct, val := vt, l := none, r := none, parent := some k })
    (c_k : m.mem k = some { color := ck, val := vk, l := some t, r := q1, parent := some p })
    (c_p : m.mem p = some { color := cP, val := vP, l := some l, r := some k, parent := some g })
    (c_l : m.mem l = some { color := cl, val := vl, l := q2, r := q3, parent := some p })
    (c_g : m.mem g = some { color := cg, val := vg, l := q4, r := some p, parent := q5 })
    (d_l_t : l ≠ t)
    (d_t_l : t ≠ l)
    (d_p_l : p ≠ l)
    (d_k_t : k ≠ t)
    (d_t_k : t ≠ k)
    (d_k_l : k ≠ l)
    (d_p_k : p ≠ k)
    (d_g_t : g ≠ t)
    (d_t_g : t ≠ g)
    (d_g_l : g ≠ l)
    (d_g_k : g ≠ k)
    (d_k_p : k ≠ p)
    (d_k_g : k ≠ g)
    (d_p_g : p ≠ g)
    (d_t_p : t ≠ p)
    (d_p_t : p ≠ t)
    (d_l_k : l ≠ k)
    (d_l_g : l ≠ g)
    (d_l_p : l ≠ p)
    (d_g_p : g ≠ p)
    (t_q4_p : q4 ≠ some p)
    (u_q4_p : some p ≠ q4)
    (hr_p : some p ≠ m._root)
    (hr_t : some t ≠ m._root) :
    ∃ m2, map._swap_nodes m (some p) (some t) = some m2 ∧
      m2.mem t = some { color := cP, val := vt, l := some l, r := some k, parent := some g } ∧
      m2.mem k = some { color := ck, val := vk, l := some p, r := q1, parent := some t } ∧
      m2.mem p = some { color := ct, val := vP, l := none, r := none, parent := some k } ∧
      m2.mem l = some { color := cl, val := vl, l := q2, r := q3, parent := some t } ∧
      m2.mem g = some { color := cg, val := vg, l := q4, r := some t, parent := q5 } ∧
      (∀ b, b ∉ [l, k, g, p, t] → m2.mem b = m.mem b) ∧
      m2._root = m._root ∧
      m2.brk = m.brk ∧
      m2._sz = m._sz ∧
      m2._cmp_k = m._cmp_k :=
  have hr0 : m._root = m._root := rfl
  Exists.elim (set_parent_step (m := m) c_l (some t)) fun m1 S1 =>
  have w1 : m1.mem l = some { color := cl, val := vl, l := q2, r := q3, parent := some t } := S1.2.1
  Exists.elim (set_parent_step (m := m1) ((S1.2.2.1 k d_k_l).trans c_k) (some t)) fun m2 S2 =>
  have w2 : m2.mem k = some { color := ck, val := vk, l := some t, r := q1, parent := some t } :=
    S2.2.1
  have k2_p := (S2.2.2.1 p d_p_k).trans ((S1.2.2.1 p d_p_l).trans c_p)
  have k2_g := (S2.2.2.1 g d_g_k).trans ((S1.2.2.1 g d_g_l).trans c_g)
  Exists.elim (set_r_step (m := m2) k2_g (some t)) fun m3 S3 =>
  have w3 : m3.mem g = some { color := cg, val := vg, l := q4, r := some t, parent := q5 } := S3.2.1
  have xr3 : m3._root = m._root := S3.2.2.2.2.1.trans (S2.2.2.2.2.1.trans (S1.2.2.2.2.1.trans hr0))
  have k2_t := (S2.2.2.1 t d_t_k).trans ((S1.2.2.1 t d_t_l).trans c_t)
  Exists.elim (set_l_step (m := m3) ((S3.2.2.1 k d_k_g).trans w2) (some p)) fun m4 S4 =>
  have w4 : m4.mem k = some { color := ck, val := vk, l := some p, r := q1, parent := some t } :=
    S4.2.1
  have k4_p := (S4.2.2.1 p d_p_k).trans ((S3.2.2.1 p d_p_g).trans k2_p)
  have k4_t := (S4.2.2.1 t d_t_k).trans ((S3.2.2.1 t d_t_g).trans k2_t)
  Exists.elim (set_l_step (m := m4) k4_p none) fun m5 S5 =>
  have w5 : m5.mem p = some { color := cP, val := vP, l := none, r := some k, parent := some g } :=
    S5.2.1
  Exists.elim (set_r_step (m := m5) w5 none) fun m6 S6 =>
  have w6 : m6.mem p = some { color := cP, val := vP, l := none, r := none, parent := some g } :=
    S6.2.1
  have xr6 : m6._root = m._root := S6.2.2.2.2.1.trans (S5.2.2.2.2.1.trans (S4.2.2.2.2.1.trans xr3))
  have k6_t := (S6.2.2.1 t d_t_p).trans ((S5.2.2.1 t d_t_p).trans k4_t)
  Exists.elim (set_parent_step (m := m6) w6 (some k)) fun m7 S7 =>
  have w7 : m7.mem p = some { color := cP, val := vP, l := none, r := none, parent := some k } :=
    S7.2.1
  Exists.elim (set_l_step (m := m7) ((S7.2.2.1 t d_t_p).trans k6_t) (some l)) fun m8 S8 =>
  have w8 : m8.mem t = some { color := ct, val := vt, l := some l, r := none, parent := some k } :=
    S8.2.1
  Exists.elim (set_r_step (m := m8) w8 (some k)) fun m9 S9 =>
  have w9 : m9.mem t = some { color := ct, val := vt, l := some l, r := some k, parent := some k }
    := S9.2.1
  have xr9 : m9._root = m._root := S9.2.2.2.2.1.trans (S8.2.2.2.2.1.trans (S7.2.2.2.2.1.trans xr6))
  Exists.elim (set_parent_step (m := m9) w9 (some g)) fun m10 S10 =>
  have w10 : m10.mem t = some { color := ct, val := vt, l := some l, r := some k, parent := some g
    } := S10.2.1
  have k9_p := (S9.2.2.1 p d_p_t).trans ((S8.2.2.1 p d_p_t).trans w7)
  Exists.elim (set_color_step (m := m10) ((S10.2.2.1 p d_p_t).trans k9_p) ct) fun m11 S11 =>
  have w11 : m11.mem p = some { color := ct, val := vP, l := none, r := none, parent := some k } :=
    S11.2.1
  Exists.elim (set_color_step (m := m11) ((S11.2.2.1 t d_t_p).trans w10) cP) fun m12 S12 =>
  have w12 : m12.mem t = some { color := cP, val := vt, l := some l, r := some k, parent := some g
    } := S12.2.1
  have xr12 : m12._root = m._root := S12.2.2.2.2.1.trans (S11.2.2.2.2.1.trans (S10.2.2.2.2.1.trans
    xr9))
  have k6_k := (S6.2.2.1 k d_k_p).trans ((S5.2.2.1 k d_k_p).trans w4)
  have k8_k := (S8.2.2.1 k d_k_t).trans ((S7.2.2.1 k d_k_p).trans k6_k)
  have k10_k := (S10.2.2.1 k d_k_t).trans ((S9.2.2.1 k d_k_t).trans k8_k)
  have k12_k := (S12.2.2.1 k d_k_t).trans ((S11.2.2.1 k d_k_p).trans k10_k)
  have k3_l := (S3.2.2.1 l d_l_g).trans ((S2.2.2.1 l d_l_k).trans w1)
  have k5_l := (S5.2.2.1 l d_l_p).trans ((S4.2.2.1 l d_l_k).trans k3_l)
  have k7_l := (S7.2.2.1 l d_l_p).trans ((S6.2.2.1 l d_l_p).trans k5_l)
  have k9_l := (S9.2.2.1 l d_l_t).trans ((S8.2.2.1 l d_l_t).trans k7_l)
  have k11_l := (S11.2.2.1 l d_l_p).trans ((S10.2.2.1 l d_l_t).trans k9_l)
  have k5_g := (S5.2.2.1 g d_g_p).trans ((S4.2.2.1 g d_g_k).trans w3)
  have k7_g := (S7.2.2.1 g d_g_p).trans ((S6.2.2.1 g d_g_p).trans k5_g)
  have k9_g := (S9.2.2.1 g d_g_t).trans ((S8.2.2.1 g d_g_t).trans k7_g)
  have k11_g := (S11.2.2.1 g d_g_p).trans ((S10.2.2.1 g d_g_t).trans k9_g)
  have hop : map._swap_nodes m (some p) (some t) = some m12 := by
    simp only [map._swap_nodes, map._swap_set_parent, map._swap_set_child,
      (get_l_eq (m := m) c_p : get_l m (some p) = some (some l)), d_l_t, d_t_l, S1.1,
      (get_r_eq (m := m1) ((S1.2.2.1 p d_p_l).trans c_p) : get_r m1 (some p) = some (some k)),
      d_k_t, d_t_k, S2.1,
      (get_parent_eq (m := m2) k2_p : get_parent m2 (some p) = some (some g)), d_g_t, d_t_g,
      (get_l_eq (m := m2) k2_g : get_l m2 (some g) = some q4), t_q4_p, u_q4_p, S3.1,
      (xr3 : m3._root = m._root), hr_p, hr_t,
      (get_l_eq (m := m3) ((S3.2.2.1 t d_t_g).trans k2_t) : get_l m3 (some t) = some none),
      (get_r_eq (m := m3) ((S3.2.2.1 t d_t_g).trans k2_t) : get_r m3 (some t) = some none),
      (get_parent_eq (m := m3) ((S3.2.2.1 t d_t_g).trans k2_t) : get_parent m3 (some t) = some
        (some k)),
      d_k_p, d_p_k,
      (get_l_eq (m := m3) ((S3.2.2.1 k d_k_g).trans w2) : get_l m3 (some k) = some (some t)),
      S4.1, (get_l_eq (m := m4) k4_p : get_l m4 (some p) = some (some l)),
      (get_r_eq (m := m4) k4_p : get_r m4 (some p) = some (some k)),
      (get_parent_eq (m := m4) k4_p : get_parent m4 (some p) = some (some g)),
      (get_color_eq (m := m4) k4_p : get_color m4 (some p) = some cP),
      (get_l_eq (m := m4) k4_t : get_l m4 (some t) = some none), S5.1,
      (get_r_eq (m := m5) ((S5.2.2.1 t d_t_p).trans k4_t) : get_r m5 (some t) = some none), S6.1,
      (get_parent_eq (m := m6) k6_t : get_parent m6 (some t) = some (some k)), S7.1, S8.1, S9.1,
      S10.1, (get_color_eq (m := m10) w10 : get_color m10 (some t) = some ct), S11.1, S12.1,
      bind_eq_ub, pure_eq_some, ub_bind_some, ne_eq, Option.some.injEq, not_false_eq_true,
      not_true_eq_false, and_self, and_true, true_and, and_false, false_and, if_true, if_false,
      ite_true, ite_false, reduceCtorEq, reduceIte, ite_not, not_not, Bool.not_eq_true,
      decide_eq_true_eq, decide_eq_false_iff_not, decide_True, decide_False, Bool.false_eq_true,
      eq_self_iff_true, Option.isSome_some, Option.isSome_none]
  have h_l : ∀ b, b ∉ [l, k, g, p, t] → b ≠ l := fun b hb e => hb (e ▸ List.Mem.head _)
  have h_k : ∀ b, b ∉ [l, k, g, p, t] → b ≠ k := fun b hb e => hb (e ▸ List.Mem.tail _
    (List.Mem.head _))
  have h_g : ∀ b, b ∉ [l, k, g, p, t] → b ≠ g := fun b hb e => hb (e ▸ List.Mem.tail _
    (List.Mem.tail _ (List.Mem.head _)))
  have h_p : ∀ b, b ∉ [l, k, g, p, t] → b ≠ p := fun b hb e => hb (e ▸ List.Mem.tail _
    (List.Mem.tail _ (List.Mem.tail _ (List.Mem.head _))))
  have h_t : ∀ b, b ∉ [l, k, g, p, t] → b ≠ t := fun b hb e => hb (e ▸ List.Mem.tail _
    (List.Mem.tail _ (List.Mem.tail _ (List.Mem.tail _ (List.Mem.head _)))))
  ⟨m12, hop, w12, k12_k, ((S12.2.2.1 p d_p_t).trans w11), ((S12.2.2.1 l d_l_t).trans k11_l),
    ((S12.2.2.1 g d_g_t).trans k11_g), (fun b hb => ((S12.2.2.1 b (h_t b hb)).trans ((S11.2.2.1 b
    (h_p b hb)).trans ((S10.2.2.1 b (h_t b hb)).trans ((S9.2.2.1 b (h_t b hb)).trans ((S8.2.2.1 b
    (h_t b hb)).trans ((S7.2.2.1 b (h_p b hb)).trans ((S6.2.2.1 b (h_p b hb)).trans ((S5.2.2.1 b
    (h_p b hb)).trans ((S4.2.2.1 b (h_k b hb)).trans ((S3.2.2.1 b (h_g b hb)).trans ((S2.2.2.1 b
    (h_k b hb)).trans (S1.2.2.1 b (h_l b hb)))))))))))))), xr12, (S12.2.2.2.1.trans
    (S11.2.2.2.1.trans (S10.2.2.2.1.trans (S9.2.2.2.1.trans (S8.2.2.2.1.trans (S7.2.2.2.1.trans
    (S6.2.2.2.1.trans (S5.2.2.2.1.trans (S4.2.2.2.1.trans (S3.2.2.2.1.trans (S2.2.2.2.1.trans
    S1.2.2.2.1))))))))))), (S12.2.2.2.2.2.1.trans (S11.2.2.2.2.2.1.trans (S10.2.2.2.2.2.1.trans
    (S9.2.2.2.2.2.1.trans (S8.2.2.2.2.2.1.trans (S7.2.2.2.2.2.1.trans (S6.2.2.2.2.2.1.trans
    (S5.2.2.2.2.2.1.trans (S4.2.2.2.2.2.1.trans (S3.2.2.2.2.2.1.trans (S2.2.2.2.2.2.1.trans
    S1.2.2.2.2.2.1))))))))))), (S12.2.2.2.2.2.2.trans (S11.2.2.2.2.2.2.trans (S10.2.2.2.2.2.2.trans
    (S9.2.2.2.2.2.2.trans (S8.2.2.2.2.2.2.trans (S7.2.2.2.2.2.2.trans (S6.2.2.2.2.2.2.trans
    (S5.2.2.2.2.2.2.trans (S4.2.2.2.2.2.2.trans (S3.2.2.2.2.2.2.trans (S2.2.2.2.2.2.2.trans
    S1.2.2.2.2.2.2)))))))))))⟩

/-- Member `_swap_nodes` of a node and the left child of its right child. -/
theorem swap_far1_succ_R_nil
    {m : map K V} {t k p l g : Nat} {ct ck cP cl cg : color_type}
    {vt vk vP vl vg : Option (K × V)} {sk ll lr sg : tree K V} {q : List (frame K V)}
    (h : Rep m (fill ((.L k ck vk sk) :: (.R p cP vP (.node l cl vl ll lr)) :: (.R g cg vg sg) :: q)
      (.node t ct vt .nil .nil))) :
    ∃ m2, map._swap_nodes m (some p) (some t) = some m2 ∧
      Rep m2 (fill ((.L k ck vk sk) :: (.R t cP vt (.node l cl vl ll lr)) :: (.R g cg vg sg) :: q)
        (.node p ct vP .nil .nil)) ∧ SameAux m m2 :=
  have hs := shaped_fill.1 h.shaped
  have c_t : m.mem t = some { color := ct, val := vt, l := none, r := none, parent := some k } :=
    hs.2.1
  have c_k : m.mem k = some { color := ck, val := vk, l := some t, r := sk.top, parent := some p }
    := hs.1.1
  have c_p : m.mem p = some { color := cP, val := vP, l := some l, r := some k, parent := some g }
    := hs.1.2.2.1
  have c_l : m.mem l = some { color := cl, val := vl, l := ll.top, r := lr.top, parent := some p }
    := hs.1.2.2.2.1.1
  have c_g : m.mem g = some { color := cg, val := vg, l := sg.top, r := some p, parent := ptop q }
    := hs.1.2.2.2.2.1
  have hB : (List.flatten [(pbefore q).map Prod.fst, sg.addrs, [g], ll.addrs, [l], lr.addrs, [p],
    [t], [k], sk.addrs, (pafter q).map Prod.fst]).Nodup := by
    have e : (fill ((.L k ck vk sk) :: (.R p cP vP (.node l cl vl ll lr)) :: (.R g cg vg sg) :: q)
      (.node t ct vt .nil .nil)).addrs =
        List.flatten [(pbefore q).map Prod.fst, sg.addrs, [g], ll.addrs, [l], lr.addrs, [p], [t],
          [k], sk.addrs, (pafter q).map Prod.fst] := by
      rw [fill_addrs]
      simp [pbefore, pafter, pbefore_append, pafter_append, tree.addrs]
    exact e ▸ h.nodup
  have hr_p : some p ≠ m._root := by
    have h0 := h
    simp only [fill_L, fill_R, fill_append] at h0
    exact Rep.ne_root (f := (.R g cg vg sg)) (q := q) h0 (by simp [mem_fill_addrs])
  have hr_t : some t ≠ m._root := by
    have h0 := h
    simp only [fill_L, fill_R, fill_append] at h0
    exact Rep.ne_root (f := (.R g cg vg sg)) (q := q) h0 (by simp [mem_fill_addrs])
  Exists.elim (swap_far1_succ_R_nil_cells c_t c_k c_p c_l c_g (blocks_ne_at hB 4 7 rfl rfl rfl)
    (blocks_ne_at hB 7 4 rfl rfl rfl) (blocks_ne_at hB 6 4 rfl rfl rfl) (blocks_ne_at hB 8 7 rfl
    rfl rfl) (blocks_ne_at hB 7 8 rfl rfl rfl) (blocks_ne_at hB 8 4 rfl rfl rfl) (blocks_ne_at hB 6
    8 rfl rfl rfl) (blocks_ne_at hB 2 7 rfl rfl rfl) (blocks_ne_at hB 7 2 rfl rfl rfl)
    (blocks_ne_at hB 2 4 rfl rfl rfl) (blocks_ne_at hB 2 8 rfl rfl rfl) (blocks_ne_at hB 8 6 rfl
    rfl rfl) (blocks_ne_at hB 8 2 rfl rfl rfl) (blocks_ne_at hB 6 2 rfl rfl rfl) (blocks_ne_at hB 7
    6 rfl rfl rfl) (blocks_ne_at hB 6 7 rfl rfl rfl) (blocks_ne_at hB 4 8 rfl rfl rfl)
    (blocks_ne_at hB 4 2 rfl rfl rfl) (blocks_ne_at hB 4 6 rfl rfl rfl) (blocks_ne_at hB 2 6 rfl
    rfl rfl) (tree.top_ne_of_not_mem (blocks_not_mem_at hB 6 1 rfl rfl rfl))
    (tree.ne_top_of_not_mem (blocks_not_mem_at hB 6 1 rfl rfl rfl)) hr_p hr_t) fun m2 H =>
  have fr := H.2.2.2.2.2.2.1
  have a_sk : ∀ b ∈ sk.addrs, m2.mem b = m.mem b :=
    region_agree hB [4, 8, 2, 6, 7] [l, k, g, p, t] 9 rfl rfl rfl fr
  have a_ll : ∀ b ∈ ll.addrs, m2.mem b = m.mem b :=
    region_agree hB [4, 8, 2, 6, 7] [l, k, g, p, t] 3 rfl rfl rfl fr
  have a_lr : ∀ b ∈ lr.addrs, m2.mem b = m.mem b :=
    region_agree hB [4, 8, 2, 6, 7] [l, k, g, p, t] 5 rfl rfl rfl fr
  have a_sg : ∀ b ∈ sg.addrs, m2.mem b = m.mem b :=
    region_agree hB [4, 8, 2, 6, 7] [l, k, g, p, t] 1 rfl rfl rfl fr
  have a_q : ∀ b ∈ paddrs q, m2.mem b = m.mem b :=
    paddrs_agree (region_agree hB [4, 8, 2, 6, 7] [l, k, g, p, t] 0 rfl rfl rfl fr)
      (region_agree hB [4, 8, 2, 6, 7] [l, k, g, p, t] 10 rfl rfl rfl fr)
  have hroot : m2._root = (fill ((.L k ck vk sk) :: (.R t cP vt (.node l cl vl ll lr)) :: (.R g cg
    vg sg) :: q) (.node p ct vP .nil .nil)).top := by
    rw [H.2.2.2.2.2.2.2.1]
    refine h.root.trans ?_
    simp only [fill_L, fill_R, fill_append]
    exact fill_top_congr rfl
  have hpath : ShapedPath m2.mem ((.L k ck vk sk) :: (.R t cP vt (.node l cl vl ll lr)) :: (.R g cg
    vg sg) :: q) (some p) :=
    ⟨H.2.2.1, Shaped.agree hs.1.2.1 a_sk, ⟨H.2.1, ⟨H.2.2.2.2.1, Shaped.agree hs.1.2.2.2.1.2.1 a_ll,
      Shaped.agree hs.1.2.2.2.1.2.2 a_lr⟩, ⟨H.2.2.2.2.2.1, Shaped.agree hs.1.2.2.2.2.2.1 a_sg,
      ShapedPath.agree_path hs.1.2.2.2.2.2.2 a_q⟩⟩⟩
  have htree : Shaped m2.mem (some k) (.node p ct vP .nil .nil) :=
    ⟨H.2.2.2.1, trivial, trivial⟩
  ⟨m2, H.1, h.of_perm (perm_swap_far1_succ _) H.2.2.2.2.2.2.2.2.1 hroot (shaped_fill.2 ⟨hpath,
    htree⟩), ⟨H.2.2.2.2.2.2.2.2.1, H.2.2.2.2.2.2.2.2.2.1, H.2.2.2.2.2.2.2.2.2.2⟩⟩

/-- The cells after `_swap_nodes`, case `far2_succ_R_nil`. -/
theorem swap_far2_succ_R_nil_cells {m : map K V} {t f k p l g : Nat}
    {ct cf ck cP cl cg : color_type} {vt vf vk vP vl vg : Option (K × V)}
    {q1 q2 q3 q4 q5 q6 q7 q8 : ptr}
    (c_t : m.mem t = some { color := ct, val := vt, l := none, r := none, parent := some f })
    (c_f : m.mem f = some { color := cf, val := vf, l := some t, r := q1, parent := q2 })
    (c_k : m.mem k = some { color := ck, val := vk, l := q3, r := q4, parent := some p })
    (c_p : m.mem p = some { color := cP, val := vP, l := some l, r := some k, parent := some g })
    (c_l : m.mem l = some { color := cl, val := vl, l := q5, r := q6, parent := some p })
    (c_g : m.mem g = some { color := cg, val := vg, l := q7, r := some p, parent := q8 })
    (d_l_t : l ≠ t)
    (d_t_l : t ≠ l)
    (d_p_l : p ≠ l)
    (d_k_t : k ≠ t)
    (d_t_k : t ≠ k)
    (d_k_l : k ≠ l)
    (d_p_k : p ≠ k)
    (d_g_t : g ≠ t)
    (d_t_g : t ≠ g)
    (d_g_l : g ≠ l)
    (d_g_k : g ≠ k)
    (d_f_p : f ≠ p)
    (d_p_f : p ≠ f)
    (d_f_l : f ≠ l)
    (d_f_k : f ≠ k)
    (d_f_g : f ≠ g)
    (d_p_g : p ≠ g)
    (d_t_f : t ≠ f)
    (d_t_p : t ≠ p)
    (d_p_t : p ≠ t)
    (d_f_t : f ≠ t)
    (d_k_g : k ≠ g)
    (d_k_f : k ≠ f)
    (d_k_p : k ≠ p)
    (d_l_k : l ≠ k)
    (d_l_g : l ≠ g)
    (d_l_f : l ≠ f)
    (d_l_p : l ≠ p)
    (d_g_f : g ≠ f)
    (d_g_p : g ≠ p)
    (t_q7_p : q7 ≠ some p)
    (u_q7_p : some p ≠ q7)
    (hr_p : some p ≠ m._root)
    (hr_t : some t ≠ m._root) :
    ∃ m2, map._swap_nodes m (some p) (some t) = some m2 ∧
      m2.mem t = some { color := cP, val := vt, l := some l, r := some k, parent := some g } ∧
      m2.mem f = some { color := cf, val := vf, l := some p, r := q1, parent := q2 } ∧
      m2.mem k = some { color := ck, val := vk, l := q3, r := q4, parent := some t } ∧
      m2.mem p = some { color := ct, val := vP, l := none, r := none, parent := some f } ∧
      m2.mem l = some { color := cl, val := vl, l := q5, r := q6, parent := some t } ∧
      m2.mem g = some { color := cg, val := vg, l := q7, r := some t, parent := q8 } ∧
      (∀ b, b ∉ [l, k, g, f, p, t] → m2.mem b = m.mem b) ∧
      m2._root = m._root ∧
      m2.brk = m.brk ∧
      m2._sz = m._sz ∧
      m2._cmp_k = m._cmp_k :=
  have hr0 : m._root = m._root := rfl
  Exists.elim (set_parent_step (m := m) c_l (some t)) fun m1 S1 =>
  have w1 : m1.mem l = some { color := cl, val := vl, l := q5, r := q6, parent := some t } := S1.2.1
  Exists.elim (set_parent_step (m := m1) ((S1.2.2.1 k d_k_l).trans c_k) (some t)) fun m2 S2 =>
  have w2 : m2.mem k = some { color := ck, val := vk, l := q3, r := q4, parent := some t } := S2.2.1
  have k2_p := (S2.2.2.1 p d_p_k).trans ((S1.2.2.1 p d_p_l).trans c_p)
  have k2_g := (S2.2.2.1 g d_g_k).trans ((S1.2.2.1 g d_g_l).trans c_g)
  Exists.elim (set_r_step (m := m2) k2_g (some t)) fun m3 S3 =>
  have w3 : m3.mem g = some { color := cg, val := vg, l := q7, r := some t, parent := q8 } := S3.2.1
  have xr3 : m3._root = m._root := S3.2.2.2.2.1.trans (S2.2.2.2.2.1.trans (S1.2.2.2.2.1.trans hr0))
  have k2_t := (S2.2.2.1 t d_t_k).trans ((S1.2.2.1 t d_t_l).trans c_t)
  have k2_f := (S2.2.2.1 f d_f_k).trans ((S1.2.2.1 f d_f_l).trans c_f)
  Exists.elim (set_l_step (m := m3) ((S3.2.2.1 f d_f_g).trans k2_f) (some p)) fun m4 S4 =>
  have w4 : m4.mem f = some { color := cf, val := vf, l := some p, r := q1, parent := q2 } := S4.2.1
  have k4_p := (S4.2.2.1 p d_p_f).trans ((S3.2.2.1 p d_p_g).trans k2_p)
  have k4_t := (S4.2.2.1 t d_t_f).trans ((S3.2.2.1 t d_t_g).trans k2_t)
  Exists.elim (set_l_step (m := m4) k4_p none) fun m5 S5 =>
  have w5 : m5.mem p = some { color := cP, val := vP, l := none, r := some k, parent := some g } :=
    S5.2.1
  Exists.elim (set_r_step (m := m5) w5 none) fun m6 S6 =>
  have w6 : m6.mem p = some { color := cP, val := vP, l := none, r := none, parent := some g } :=
    S6.2.1
  have xr6 : m6._root = m._root := S6.2.2.2.2.1.trans (S5.2.2.2.2.1.trans (S4.2.2.2.2.1.trans xr3))
  have k6_t := (S6.2.2.1 t d_t_p).trans ((S5.2.2.1 t d_t_p).trans k4_t)
  Exists.elim (set_parent_step (m := m6) w6 (some f)) fun m7 S7 =>
  have w7 : m7.mem p = some { color := cP, val := vP, l := none, r := none, parent := some f } :=
    S7.2.1
  Exists.elim (set_l_step (m := m7) ((S7.2.2.1 t d_t_p).trans k6_t) (some l)) fun m8 S8 =>
  have w8 : m8.mem t = some { color := ct, val := vt, l := some l, r := none, parent := some f } :=
    S8.2.1
  Exists.elim (set_r_step (m := m8) w8 (some k)) fun m9 S9 =>
  have w9 : m9.mem t = some { color := ct, val := vt, l := some l, r := some k, parent := some f }
    := S9.2.1
  have xr9 : m9._root = m._root := S9.2.2.2.2.1.trans (S8.2.2.2.2.1.trans (S7.2.2.2.2.1.trans xr6))
  Exists.elim (set_parent_step (m := m9) w9 (some g)) fun m10 S10 =>
  have w10 : m10.mem t = some { color := ct, val := vt, l := some l, r := some k, parent := some g
    } := S10.2.1
  have k9_p := (S9.2.2.1 p d_p_t).trans ((S8.2.2.1 p d_p_t).trans w7)
  Exists.elim (set_color_step (m := m10) ((S10.2.2.1 p d_p_t).trans k9_p) ct) fun m11 S11 =>
  have w11 : m11.mem p = some { color := ct, val := vP, l := none, r := none, parent := some f } :=
    S11.2.1
  Exists.elim (set_color_step (m := m11) ((S11.2.2.1 t d_t_p).trans w10) cP) fun m12 S12 =>
  have w12 : m12.mem t = some { color := cP, val := vt, l := some l, r := some k, parent := some g
    } := S12.2.1
  have xr12 : m12._root = m._root := S12.2.2.2.2.1.trans (S11.2.2.2.2.1.trans (S10.2.2.2.2.1.trans
    xr9))
  have k6_f := (S6.2.2.1 f d_f_p).trans ((S5.2.2.1 f d_f_p).trans w4)
  have k8_f := (S8.2.2.1 f d_f_t).trans ((S7.2.2.1 f d_f_p).trans k6_f)
  have k10_f := (S10.2.2.1 f d_f_t).trans ((S9.2.2.1 f d_f_t).trans k8_f)
  have k12_f := (S12.2.2.1 f d_f_t).trans ((S11.2.2.1 f d_f_p).trans k10_f)
  have k4_k := (S4.2.2.1 k d_k_f).trans ((S3.2.2.1 k d_k_g).trans w2)
  have k6_k := (S6.2.2.1 k d_k_p).trans ((S5.2.2.1 k d_k_p).trans k4_k)
  have k8_k := (S8.2.2.1 k d_k_t).trans ((S7.2.2.1 k d_k_p).trans k6_k)
  have k10_k := (S10.2.2.1 k d_k_t).trans ((S9.2.2.1 k d_k_t).trans k8_k)
  have k12_k := (S12.2.2.1 k d_k_t).trans ((S11.2.2.1 k d_k_p).trans k10_k)
  have k3_l := (S3.2.2.1 l d_l_g).trans ((S2.2.2.1 l d_l_k).trans w1)
  have k5_l := (S5.2.2.1 l d_l_p).trans ((S4.2.2.1 l d_l_f).trans k3_l)
  have k7_l := (S7.2.2.1 l d_l_p).trans ((S6.2.2.1 l d_l_p).trans k5_l)
  have k9_l := (S9.2.2.1 l d_l_t).trans ((S8.2.2.1 l d_l_t).trans k7_l)
  have k11_l := (S11.2.2.1 l d_l_p).trans ((S10.2.2.1 l d_l_t).trans k9_l)
  have k5_g := (S5.2.2.1 g d_g_p).trans ((S4.2.2.1 g d_g_f).trans w3)
  have k7_g := (S7.2.2.1 g d_g_p).trans ((S6.2.2.1 g d_g_p).trans k5_g)
  have k9_g := (S9.2.2.1 g d_g_t).trans ((S8.2.2.1 g d_g_t).trans k7_g)
  have k11_g := (S11.2.2.1 g d_g_p).trans ((S10.2.2.1 g d_g_t).trans k9_g)
  have hop : map._swap_nodes m (some p) (some t) = some m12 := by
    simp only [map._swap_nodes, map._swap_set_parent, map._swap_set_child,
      (get_l_eq (m := m) c_p : get_l m (some p) = some (some l)), d_l_t, d_t_l, S1.1,
      (get_r_eq (m := m1) ((S1.2.2.1 p d_p_l).trans c_p) : get_r m1 (some p) = some (some k)),
      d_k_t, d_t_k, S2.1,
      (get_parent_eq (m := m2) k2_p : get_parent m2 (some p) = some (some g)), d_g_t, d_t_g,
      (get_l_eq (m := m2) k2_g : get_l m2 (some g) = some q7), t_q7_p, u_q7_p, S3.1,
      (xr3 : m3._root = m._root), hr_p, hr_t,
      (get_l_eq (m := m3) ((S3.2.2.1 t d_t_g).trans k2_t) : get_l m3 (some t) = some none),
      (get_r_eq (m := m3) ((S3.2.2.1 t d_t_g).trans k2_t) : get_r m3 (some t) = some none),
      (get_parent_eq (m := m3) ((S3.2.2.1 t d_t_g).trans k2_t) : get_parent m3 (some t) = some
        (some f)),
      d_f_p, d_p_f,
      (get_l_eq (m := m3) ((S3.2.2.1 f d_f_g).trans k2_f) : get_l m3 (some f) = some (some t)),
      S4.1, (get_l_eq (m := m4) k4_p : get_l m4 (some p) = some (some l)),
      (get_r_eq (m := m4) k4_p : get_r m4 (some p) = some (some k)),
      (get_parent_eq (m := m4) k4_p : get_parent m4 (some p) = some (some g)),
      (get_color_eq (m := m4) k4_p : get_color m4 (some p) = some cP),
      (get_l_eq (m := m4) k4_t : get_l m4 (some t) = some none), S5.1,
      (get_r_eq (m := m5) ((S5.2.2.1 t d_t_p).trans k4_t) : get_r m5 (some t) = some none), S6.1,
      (get_parent_eq (m := m6) k6_t : get_parent m6 (some t) = some (some f)), S7.1, S8.1, S9.1,
      S10.1, (get_color_eq (m := m10) w10 : get_color m10 (some t) = some ct), S11.1, S12.1,
      bind_eq_ub, pure_eq_some, ub_bind_some, ne_eq, Option.some.injEq, not_false_eq_true,
      not_true_eq_false, and_self, and_true, true_and, and_false, false_and, if_true, if_false,
      ite_true, ite_false, reduceCtorEq, reduceIte, ite_not, not_not, Bool.not_eq_true,
      decide_eq_true_eq, decide_eq_false_iff_not, decide_True, decide_False, Bool.false_eq_true,
      eq_self_iff_true, Option.isSome_some, Option.isSome_none]
  have h_l : ∀ b, b ∉ [l, k, g, f, p, t] → b ≠ l := fun b hb e => hb (e ▸ List.Mem.head _)
  have h_k : ∀ b, b ∉ [l, k, g, f, p, t] → b ≠ k := fun b hb e => hb (e ▸ List.Mem.tail _
    (List.Mem.head _))
  have h_g : ∀ b, b ∉ [l, k, g, f, p, t] → b ≠ g := fun b hb e => hb (e ▸ List.Mem.tail _
    (List.Mem.tail _ (List.Mem.head _)))
  have h_f : ∀ b, b ∉ [l, k, g, f, p, t] → b ≠ f := fun b hb e => hb (e ▸ List.Mem.tail _
    (List.Mem.tail _ (List.Mem.tail _ (List.Mem.head _))))
  have h_p : ∀ b, b ∉ [l, k, g, f, p, t] → b ≠ p := fun b hb e => hb (e ▸ List.Mem.tail _
    (List.Mem.tail _ (List.Mem.tail _ (List.Mem.tail _ (List.Mem.head _)))))
  have h_t : ∀ b, b ∉ [l, k, g, f, p, t] → b ≠ t := fun b hb e => hb (e ▸ List.Mem.tail _
    (List.Mem.tail _ (List.Mem.tail _ (List.Mem.tail _ (List.Mem.tail _ (List.Mem.head _))))))
  ⟨m12, hop, w12, k12_f, k12_k, ((S12.2.2.1 p d_p_t).trans w11), ((S12.2.2.1 l d_l_t).trans k11_l),
    ((S12.2.2.1 g d_g_t).trans k11_g), (fun b hb => ((S12.2.2.1 b (h_t b hb)).trans ((S11.2.2.1 b
    (h_p b hb)).trans ((S10.2.2.1 b (h_t b hb)).trans ((S9.2.2.1 b (h_t b hb)).trans ((S8.2.2.1 b
    (h_t b hb)).trans ((S7.2.2.1 b (h_p b hb)).trans ((S6.2.2.1 b (h_p b hb)).trans ((S5.2.2.1 b
    (h_p b hb)).trans ((S4.2.2.1 b (h_f b hb)).trans ((S3.2.2.1 b (h_g b hb)).trans ((S2.2.2.1 b
    (h_k b hb)).trans (S1.2.2.1 b (h_l b hb)))))))))))))), xr12, (S12.2.2.2.1.trans
    (S11.2.2.2.1.trans (S10.2.2.2.1.trans (S9.2.2.2.1.trans (S8.2.2.2.1.trans (S7.2.2.2.1.trans
    (S6.2.2.2.1.trans (S5.2.2.2.1.trans (S4.2.2.2.1.trans (S3.2.2.2.1.trans (S2.2.2.2.1.trans
    S1.2.2.2.1))))))))))), (S12.2.2.2.2.2.1.trans (S11.2.2.2.2.2.1.trans (S10.2.2.2.2.2.1.trans
    (S9.2.2.2.2.2.1.trans (S8.2.2.2.2.2.1.trans (S7.2.2.2.2.2.1.trans (S6.2.2.2.2.2.1.trans
    (S5.2.2.2.2.2.1.trans (S4.2.2.2.2.2.1.trans (S3.2.2.2.2.2.1.trans (S2.2.2.2.2.2.1.trans
    S1.2.2.2.2.2.1))))))))))), (S12.2.2.2.2.2.2.trans (S11.2.2.2.2.2.2.trans (S10.2.2.2.2.2.2.trans
    (S9.2.2.2.2.2.2.trans (S8.2.2.2.2.2.2.trans (S7.2.2.2.2.2.2.trans (S6.2.2.2.2.2.2.trans
    (S5.2.2.2.2.2.2.trans (S4.2.2.2.2.2.2.trans (S3.2.2.2.2.2.2.trans (S2.2.2.2.2.2.2.trans
    S1.2.2.2.2.2.2)))))))))))⟩

/-- Member `_swap_nodes` of a node and a left descendant of its right child. -/
theorem swap_far2_succ_R_nil
    {m : map K V} {t f k p l g : Nat} {ct cf ck cP cl cg : color_type}
    {vt vf vk vP vl vg : Option (K × V)} {sf sk ll lr sg : tree K V} {rm q : List (frame K V)}
    (h : Rep m (fill ((.L f cf vf sf) :: (rm ++ (.L k ck vk sk) :: (.R p cP vP (.node l cl vl ll lr)) :: (.R g cg vg sg) :: q))
      (.node t ct vt .nil .nil))) :
    ∃ m2, map._swap_nodes m (some p) (some t) = some m2 ∧
      Rep m2 (fill ((.L f cf vf sf) :: (rm ++ (.L k ck vk sk) :: (.R t cP vt (.node l cl vl ll lr)) :: (.R g cg vg sg) :: q))
        (.node p ct vP .nil .nil)) ∧ SameAux m m2 :=
  have hs := shaped_fill.1 h.shaped
  have c_t : m.mem t = some { color := ct, val := vt, l := none, r := none, parent := some f } :=
    hs.2.1
  have c_f : m.mem f = some { color := cf, val := vf, l := some t, r := sf.top, parent := ptop ((rm
    ++ (.L k ck vk sk) :: (.R p cP vP (.node l cl vl ll lr)) :: (.R g cg vg sg) :: q)) } := hs.1.1
  have s_rm := hs.1.2.2
  Exists.elim (ShapedPath.drop s_rm) fun hh sp2 =>
  have c_k : m.mem k = some { color := ck, val := vk, l := hh, r := sk.top, parent := some p } :=
    sp2.1
  have c_p : m.mem p = some { color := cP, val := vP, l := some l, r := some k, parent := some g }
    := sp2.2.2.1
  have c_l : m.mem l = some { color := cl, val := vl, l := ll.top, r := lr.top, parent := some p }
    := sp2.2.2.2.1.1
  have c_g : m.mem g = some { color := cg, val := vg, l := sg.top, r := some p, parent := ptop q }
    := sp2.2.2.2.2.1
  have hB : (List.flatten [(pbefore q).map Prod.fst, sg.addrs, [g], ll.addrs, [l], lr.addrs, [p],
    (pbefore rm).map Prod.fst, [t], [f], sf.addrs, (pafter rm).map Prod.fst, [k], sk.addrs, (pafter
    q).map Prod.fst]).Nodup := by
    have e : (fill ((.L f cf vf sf) :: (rm ++ (.L k ck vk sk) :: (.R p cP vP (.node l cl vl ll lr))
      :: (.R g cg vg sg) :: q)) (.node t ct vt .nil .nil)).addrs =
        List.flatten [(pbefore q).map Prod.fst, sg.addrs, [g], ll.addrs, [l], lr.addrs, [p],
          (pbefore rm).map Prod.fst, [t], [f], sf.addrs, (pafter rm).map Prod.fst, [k], sk.addrs,
          (pafter q).map Prod.fst] := by
      rw [fill_addrs]
      simp [pbefore, pafter, pbefore_append, pafter_append, tree.addrs]
    exact e ▸ h.nodup
  have hr_p : some p ≠ m._root := by
    have h0 := h
    simp only [fill_L, fill_R, fill_append] at h0
    exact Rep.ne_root (f := (.R g cg vg sg)) (q := q) h0 (by simp [mem_fill_addrs])
  have hr_t : some t ≠ m._root := by
    have h0 := h
    simp only [fill_L, fill_R, fill_append] at h0
    exact Rep.ne_root (f := (.R g cg vg sg)) (q := q) h0 (by simp [mem_fill_addrs])
  Exists.elim (swap_far2_succ_R_nil_cells c_t c_f c_k c_p c_l c_g (blocks_ne_at hB 4 8 rfl rfl rfl)
    (blocks_ne_at hB 8 4 rfl rfl rfl) (blocks_ne_at hB 6 4 rfl rfl rfl) (blocks_ne_at hB 12 8 rfl
    rfl rfl) (blocks_ne_at hB 8 12 rfl rfl rfl) (blocks_ne_at hB 12 4 rfl rfl rfl) (blocks_ne_at hB
    6 12 rfl rfl rfl) (blocks_ne_at hB 2 8 rfl rfl rfl) (blocks_ne_at hB 8 2 rfl rfl rfl)
    (blocks_ne_at hB 2 4 rfl rfl rfl) (blocks_ne_at hB 2 12 rfl rfl rfl) (blocks_ne_at hB 9 6 rfl
    rfl rfl) (blocks_ne_at hB 6 9 rfl rfl rfl) (blocks_ne_at hB 9 4 rfl rfl rfl) (blocks_ne_at hB 9
    12 rfl rfl rfl) (blocks_ne_at hB 9 2 rfl rfl rfl) (blocks_ne_at hB 6 2 rfl rfl rfl)
    (blocks_ne_at hB 8 9 rfl rfl rfl) (blocks_ne_at hB 8 6 rfl rfl rfl) (blocks_ne_at hB 6 8 rfl
    rfl rfl) (blocks_ne_at hB 9 8 rfl rfl rfl) (blocks_ne_at hB 12 2 rfl rfl rfl) (blocks_ne_at hB
    12 9 rfl rfl rfl) (blocks_ne_at hB 12 6 rfl rfl rfl) (blocks_ne_at hB 4 12 rfl rfl rfl)
    (blocks_ne_at hB 4 2 rfl rfl rfl) (blocks_ne_at hB 4 9 rfl rfl rfl) (blocks_ne_at hB 4 6 rfl
    rfl rfl) (blocks_ne_at hB 2 9 rfl rfl rfl) (blocks_ne_at hB 2 6 rfl rfl rfl)
    (tree.top_ne_of_not_mem (blocks_not_mem_at hB 6 1 rfl rfl rfl)) (tree.ne_top_of_not_mem
    (blocks_not_mem_at hB 6 1 rfl rfl rfl)) hr_p hr_t) fun m2 H =>
  have fr := H.2.2.2.2.2.2.2.1
  have a_sf : ∀ b ∈ sf.addrs, m2.mem b = m.mem b :=
    region_agree hB [4, 12, 2, 9, 6, 8] [l, k, g, f, p, t] 10 rfl rfl rfl fr
  have a_rm : ∀ b ∈ paddrs rm, m2.mem b = m.mem b :=
    paddrs_agree (region_agree hB [4, 12, 2, 9, 6, 8] [l, k, g, f, p, t] 7 rfl rfl rfl fr)
      (region_agree hB [4, 12, 2, 9, 6, 8] [l, k, g, f, p, t] 11 rfl rfl rfl fr)
  have a_sk : ∀ b ∈ sk.addrs, m2.mem b = m.mem b :=
    region_agree hB [4, 12, 2, 9, 6, 8] [l, k, g, f, p, t] 13 rfl rfl rfl fr
  have a_ll : ∀ b ∈ ll.addrs, m2.mem b = m.mem b :=
    region_agree hB [4, 12, 2, 9, 6, 8] [l, k, g, f, p, t] 3 rfl rfl rfl fr
  have a_lr : ∀ b ∈ lr.addrs, m2.mem b = m.mem b :=
    region_agree hB [4, 12, 2, 9, 6, 8] [l, k, g, f, p, t] 5 rfl rfl rfl fr
  have a_sg : ∀ b ∈ sg.addrs, m2.mem b = m.mem b :=
    region_agree hB [4, 12, 2, 9, 6, 8] [l, k, g, f, p, t] 1 rfl rfl rfl fr
  have a_q : ∀ b ∈ paddrs q, m2.mem b = m.mem b :=
    paddrs_agree (region_agree hB [4, 12, 2, 9, 6, 8] [l, k, g, f, p, t] 0 rfl rfl rfl fr)
      (region_agree hB [4, 12, 2, 9, 6, 8] [l, k, g, f, p, t] 14 rfl rfl rfl fr)
  have ep_f : ptop ((rm ++ (.L k ck vk sk) :: (.R t cP vt (.node l cl vl ll lr)) :: (.R g cg vg sg)
    :: q)) = ptop ((rm ++ (.L k ck vk sk) :: (.R p cP vP (.node l cl vl ll lr)) :: (.R g cg vg sg)
    :: q)) :=
    ptop_append_cons rm _ _ rfl
  have hroot : m2._root = (fill ((.L f cf vf sf) :: (rm ++ (.L k ck vk sk) :: (.R t cP vt (.node l
    cl vl ll lr)) :: (.R g cg vg sg) :: q)) (.node p ct vP .nil .nil)).top := by
    rw [H.2.2.2.2.2.2.2.2.1]
    refine h.root.trans ?_
    simp only [fill_L, fill_R, fill_append]
    exact fill_top_congr rfl
  have hpath : ShapedPath m2.mem ((.L f cf vf sf) :: (rm ++ (.L k ck vk sk) :: (.R t cP vt (.node l
    cl vl ll lr)) :: (.R g cg vg sg) :: q)) (some p) :=
    ⟨(by rw [ep_f]; exact H.2.2.1), Shaped.agree hs.1.2.1 a_sf, ShapedPath.splice_L s_rm a_rm c_k
      rfl (⟨H.2.2.2.1, Shaped.agree sp2.2.1 a_sk, ⟨H.2.1, ⟨H.2.2.2.2.2.1, Shaped.agree
      sp2.2.2.2.1.2.1 a_ll, Shaped.agree sp2.2.2.2.1.2.2 a_lr⟩, ⟨H.2.2.2.2.2.2.1, Shaped.agree
      sp2.2.2.2.2.2.1 a_sg, ShapedPath.agree_path sp2.2.2.2.2.2.2 a_q⟩⟩⟩)⟩
  have htree : Shaped m2.mem (some f) (.node p ct vP .nil .nil) :=
    ⟨H.2.2.2.2.1, trivial, trivial⟩
  ⟨m2, H.1, h.of_perm (perm_swap_far2_succ _) H.2.2.2.2.2.2.2.2.2.1 hroot (shaped_fill.2 ⟨hpath,
    htree⟩), ⟨H.2.2.2.2.2.2.2.2.2.1, H.2.2.2.2.2.2.2.2.2.2.1, H.2.2.2.2.2.2.2.2.2.2.2⟩⟩

/-- The cells after `_swap_nodes`, case `adj_succ_R_node`. -/
theorem swap_adj_succ_R_node_cells {m : map K V} {p l t r g : Nat}
    {cP cl ct cr cg : color_type} {vP vl vt vr vg : Option (K × V)} {q1 q2 q3 q4 q5 q6 : ptr}
    (c_p : m.mem p = some { color := cP, val := vP, l := some l, r := some t, parent := some g })
    (c_l : m.mem l = some { color := cl, val := vl, l := q1, r := q2, parent := some p })
    (c_t : m.mem t = some { color := ct, val := vt, l := none, r := some r, parent := some p })
    (c_r : m.mem r = some { color := cr, val := vr, l := q3, r := q4, parent := some t })
    (c_g : m.mem g = some { color := cg, val := vg, l := q5, r := some p, parent := q6 })
    (d_l_t : l ≠ t)
    (d_t_l : t ≠ l)
    (d_p_l : p ≠ l)
    (d_g_t : g ≠ t)
    (d_t_g : t ≠ g)
    (d_g_l : g ≠ l)
    (d_r_p : r ≠ p)
    (d_p_r : p ≠ r)
    (d_r_l : r ≠ l)
    (d_r_g : r ≠ g)
    (d_t_r : t ≠ r)
    (d_p_g : p ≠ g)
    (d_t_p : t ≠ p)
    (d_p_t : p ≠ t)
    (d_l_g : l ≠ g)
    (d_l_r : l ≠ r)
    (d_l_p : l ≠ p)
    (d_r_t : r ≠ t)
    (d_g_r : g ≠ r)
    (d_g_p : g ≠ p)
    (t_q5_p : q5 ≠ some p)
    (u_q5_p : some p ≠ q5)
    (hr_p : some p ≠ m._root)
    (hr_t : some t ≠ m._root) :
    ∃ m2, map._swap_nodes m (some p) (some t) = some m2 ∧
      m2.mem p = some { color := ct, val := vP, l := none, r := some r, parent := some t } ∧
      m2.mem l = some { color := cl, val := vl, l := q1, r := q2, parent := some t } ∧
      m2.mem t = some { color := cP, val := vt, l := some l, r := some p, parent := some g } ∧
      m2.mem r = some { color := cr, val := vr, l := q3, r := q4, parent := some p } ∧
      m2.mem g = some { color := cg, val := vg, l := q5, r := some t, parent := q6 } ∧
      (∀ b, b ∉ [l, g, r, p, t] → m2.mem b = m.mem b) ∧
      m2._root = m._root ∧
      m2.brk = m.brk ∧
      m2._sz = m._sz ∧
      m2._cmp_k = m._cmp_k :=
  have hr0 : m._root = m._root := rfl
  Exists.elim (set_parent_step (m := m) c_l (some t)) fun m1 S1 =>
  have w1 : m1.mem l = some { color := cl, val := vl, l := q1, r := q2, parent := some t } := S1.2.1
  Exists.elim (set_r_step (m := m1) ((S1.2.2.1 g d_g_l).trans c_g) (some t)) fun m2 S2 =>
  have w2 : m2.mem g = some { color := cg, val := vg, l := q5, r := some t, parent := q6 } := S2.2.1
  have k2_t := (S2.2.2.1 t d_t_g).trans ((S1.2.2.1 t d_t_l).trans c_t)
  have k2_r := (S2.2.2.1 r d_r_g).trans ((S1.2.2.1 r d_r_l).trans c_r)
  Exists.elim (set_parent_step (m := m2) k2_r (some p)) fun m3 S3 =>
  have w3 : m3.mem r = some { color := cr, val := vr, l := q3, r := q4, parent := some p } := S3.2.1
  have xr3 : m3._root = m._root := S3.2.2.2.2.1.trans (S2.2.2.2.2.1.trans (S1.2.2.2.2.1.trans hr0))
  have k2_p := (S2.2.2.1 p d_p_g).trans ((S1.2.2.1 p d_p_l).trans c_p)
  Exists.elim (set_l_step (m := m3) ((S3.2.2.1 p d_p_r).trans k2_p) none) fun m4 S4 =>
  have w4 : m4.mem p = some { color := cP, val := vP, l := none, r := some t, parent := some g } :=
    S4.2.1
  have k4_t := (S4.2.2.1 t d_t_p).trans ((S3.2.2.1 t d_t_r).trans k2_t)
  Exists.elim (set_r_step (m := m4) w4 (some r)) fun m5 S5 =>
  have w5 : m5.mem p = some { color := cP, val := vP, l := none, r := some r, parent := some g } :=
    S5.2.1
  Exists.elim (set_parent_step (m := m5) w5 (some t)) fun m6 S6 =>
  have w6 : m6.mem p = some { color := cP, val := vP, l := none, r := some r, parent := some t } :=
    S6.2.1
  have xr6 : m6._root = m._root := S6.2.2.2.2.1.trans (S5.2.2.2.2.1.trans (S4.2.2.2.2.1.trans xr3))
  have k6_t := (S6.2.2.1 t d_t_p).trans ((S5.2.2.1 t d_t_p).trans k4_t)
  Exists.elim (set_l_step (m := m6) k6_t (some l)) fun m7 S7 =>
  have w7 : m7.mem t = some { color := ct, val := vt, l := some l, r := some r, parent := some p }
    := S7.2.1
  Exists.elim (set_r_step (m := m7) w7 (some p)) fun m8 S8 =>
  have w8 : m8.mem t = some { color := ct, val := vt, l := some l, r := some p, parent := some p }
    := S8.2.1
  Exists.elim (set_parent_step (m := m8) w8 (some g)) fun m9 S9 =>
  have w9 : m9.mem t = some { color := ct, val := vt, l := some l, r := some p, parent := some g }
    := S9.2.1
  have xr9 : m9._root = m._root := S9.2.2.2.2.1.trans (S8.2.2.2.2.1.trans (S7.2.2.2.2.1.trans xr6))
  have k8_p := (S8.2.2.1 p d_p_t).trans ((S7.2.2.1 p d_p_t).trans w6)
  Exists.elim (set_color_step (m := m9) ((S9.2.2.1 p d_p_t).trans k8_p) ct) fun m10 S10 =>
  have w10 : m10.mem p = some { color := ct, val := vP, l := none, r := some r, parent := some t }
    := S10.2.1
  Exists.elim (set_color_step (m := m10) ((S10.2.2.1 t d_t_p).trans w9) cP) fun m11 S11 =>
  have w11 : m11.mem t = some { color := cP, val := vt, l := some l, r := some p, parent := some g
    } := S11.2.1
  have k3_l := (S3.2.2.1 l d_l_r).trans ((S2.2.2.1 l d_l_g).trans w1)
  have k5_l := (S5.2.2.1 l d_l_p).trans ((S4.2.2.1 l d_l_p).trans k3_l)
  have k7_l := (S7.2.2.1 l d_l_t).trans ((S6.2.2.1 l d_l_p).trans k5_l)
  have k9_l := (S9.2.2.1 l d_l_t).trans ((S8.2.2.1 l d_l_t).trans k7_l)
  have k11_l := (S11.2.2.1 l d_l_t).trans ((S10.2.2.1 l d_l_p).trans k9_l)
  have k5_r := (S5.2.2.1 r d_r_p).trans ((S4.2.2.1 r d_r_p).trans w3)
  have k7_r := (S7.2.2.1 r d_r_t).trans ((S6.2.2.1 r d_r_p).trans k5_r)
  have k9_r := (S9.2.2.1 r d_r_t).trans ((S8.2.2.1 r d_r_t).trans k7_r)
  have k11_r := (S11.2.2.1 r d_r_t).trans ((S10.2.2.1 r d_r_p).trans k9_r)
  have k4_g := (S4.2.2.1 g d_g_p).trans ((S3.2.2.1 g d_g_r).trans w2)
  have k6_g := (S6.2.2.1 g d_g_p).trans ((S5.2.2.1 g d_g_p).trans k4_g)
  have k8_g := (S8.2.2.1 g d_g_t).trans ((S7.2.2.1 g d_g_t).trans k6_g)
  have k10_g := (S10.2.2.1 g d_g_p).trans ((S9.2.2.1 g d_g_t).trans k8_g)
  have hop : map._swap_nodes m (some p) (some t) = some m11 := by
    simp only [map._swap_nodes, map._swap_set_parent, map._swap_set_child,
      (get_l_eq (m := m) c_p : get_l m (some p) = some (some l)), d_l_t, d_t_l, S1.1,
      (get_r_eq (m := m1) ((S1.2.2.1 p d_p_l).trans c_p) : get_r m1 (some p) = some (some t)),
      (get_parent_eq (m := m1) ((S1.2.2.1 p d_p_l).trans c_p) : get_parent m1 (some p) = some (some
        g)),
      d_g_t, d_t_g,
      (get_l_eq (m := m1) ((S1.2.2.1 g d_g_l).trans c_g) : get_l m1 (some g) = some q5), t_q5_p,
      u_q5_p, S2.1, ((S2.2.2.2.2.1.trans (S1.2.2.2.2.1.trans hr0)) : m2._root = m._root), hr_p,
      hr_t, (get_l_eq (m := m2) k2_t : get_l m2 (some t) = some none),
      (get_r_eq (m := m2) k2_t : get_r m2 (some t) = some (some r)), d_r_p, d_p_r, S3.1,
      (get_parent_eq (m := m3) ((S3.2.2.1 t d_t_r).trans k2_t) : get_parent m3 (some t) = some
        (some p)),
      (get_l_eq (m := m3) ((S3.2.2.1 p d_p_r).trans k2_p) : get_l m3 (some p) = some (some l)),
      (get_r_eq (m := m3) ((S3.2.2.1 p d_p_r).trans k2_p) : get_r m3 (some p) = some (some t)),
      (get_parent_eq (m := m3) ((S3.2.2.1 p d_p_r).trans k2_p) : get_parent m3 (some p) = some
        (some g)),
      (get_color_eq (m := m3) ((S3.2.2.1 p d_p_r).trans k2_p) : get_color m3 (some p) = some cP),
      (get_l_eq (m := m3) ((S3.2.2.1 t d_t_r).trans k2_t) : get_l m3 (some t) = some none), S4.1,
      (get_r_eq (m := m4) k4_t : get_r m4 (some t) = some (some r)), S5.1,
      (get_parent_eq (m := m5) ((S5.2.2.1 t d_t_p).trans k4_t) : get_parent m5 (some t) = some
        (some p)),
      S6.1, S7.1, S8.1, S9.1, (get_color_eq (m := m9) w9 : get_color m9 (some t) = some ct),
      S10.1, S11.1, bind_eq_ub, pure_eq_some, ub_bind_some, ne_eq, Option.some.injEq,
      not_false_eq_true, not_true_eq_false, and_self, and_true, true_and, and_false, false_and,
      if_true, if_false, ite_true, ite_false, reduceCtorEq, reduceIte, ite_not, not_not,
      Bool.not_eq_true, decide_eq_true_eq, decide_eq_false_iff_not, decide_True, decide_False,
      Bool.false_eq_true, eq_self_iff_true, Option.isSome_some, Option.isSome_none]
  have h_l : ∀ b, b ∉ [l, g, r, p, t] → b ≠ l := fun b hb e => hb (e ▸ List.Mem.head _)
  have h_g : ∀ b, b ∉ [l, g, r, p, t] → b ≠ g := fun b hb e => hb (e ▸ List.Mem.tail _
    (List.Mem.head _))
  have h_r : ∀ b, b ∉ [l, g, r, p, t] → b ≠ r := fun b hb e => hb (e ▸ List.Mem.tail _
    (List.Mem.tail _ (List.Mem.head _)))
  have h_p : ∀ b, b ∉ [l, g, r, p, t] → b ≠ p := fun b hb e => hb (e ▸ List.Mem.tail _
    (List.Mem.tail _ (List.Mem.tail _ (List.Mem.head _))))
  have h_t : ∀ b, b ∉ [l, g, r, p, t] → b ≠ t := fun b hb e => hb (e ▸ List.Mem.tail _
    (List.Mem.tail _ (List.Mem.tail _ (List.Mem.tail _ (List.Mem.head _)))))
  ⟨m11, hop, ((S11.2.2.1 p d_p_t).trans w10), k11_l, w11, k11_r, ((S11.2.2.1 g d_g_t).trans k10_g),
    (fun b hb => ((S11.2.2.1 b (h_t b hb)).trans ((S10.2.2.1 b (h_p b hb)).trans ((S9.2.2.1 b (h_t
    b hb)).trans ((S8.2.2.1 b (h_t b hb)).trans ((S7.2.2.1 b (h_t b hb)).trans ((S6.2.2.1 b (h_p b
    hb)).trans ((S5.2.2.1 b (h_p b hb)).trans ((S4.2.2.1 b (h_p b hb)).trans ((S3.2.2.1 b (h_r b
    hb)).trans ((S2.2.2.1 b (h_g b hb)).trans (S1.2.2.1 b (h_l b hb))))))))))))),
    (S11.2.2.2.2.1.trans (S10.2.2.2.2.1.trans xr9)), (S11.2.2.2.1.trans (S10.2.2.2.1.trans
    (S9.2.2.2.1.trans (S8.2.2.2.1.trans (S7.2.2.2.1.trans (S6.2.2.2.1.trans (S5.2.2.2.1.trans
    (S4.2.2.2.1.trans (S3.2.2.2.1.trans (S2.2.2.2.1.trans S1.2.2.2.1)))))))))),
    (S11.2.2.2.2.2.1.trans (S10.2.2.2.2.2.1.trans (S9.2.2.2.2.2.1.trans (S8.2.2.2.2.2.1.trans
    (S7.2.2.2.2.2.1.trans (S6.2.2.2.2.2.1.trans (S5.2.2.2.2.2.1.trans (S4.2.2.2.2.2.1.trans
    (S3.2.2.2.2.2.1.trans (S2.2.2.2.2.2.1.trans S1.2.2.2.2.2.1)))))))))), (S11.2.2.2.2.2.2.trans
    (S10.2.2.2.2.2.2.trans (S9.2.2.2.2.2.2.trans (S8.2.2.2.2.2.2.trans (S7.2.2.2.2.2.2.trans
    (S6.2.2.2.2.2.2.trans (S5.2.2.2.2.2.2.trans (S4.2.2.2.2.2.2.trans (S3.2.2.2.2.2.2.trans
    (S2.2.2.2.2.2.2.trans S1.2.2.2.2.2.2))))))))))⟩

/-- Member `_swap_nodes` of a node and its right child, which has no left child. -/
theorem swap_adj_succ_R_node
    {m : map K V} {p l t r g : Nat} {cP cl ct cr cg : color_type}
    {vP vl vt vr vg : Option (K × V)} {ll lr rl rr sg : tree K V} {q : List (frame K V)}
    (h : Rep m (fill ((.R g cg vg sg) :: q)
      (.node p cP vP (.node l cl vl ll lr) (.node t ct vt .nil (.node r cr vr rl rr))))) :
    ∃ m2, map._swap_nodes m (some p) (some t) = some m2 ∧
      Rep m2 (fill ((.R g cg vg sg) :: q)
        (.node t cP vt (.node l cl vl ll lr) (.node p ct vP .nil (.node r cr vr rl rr)))) ∧ SameAux m m2 :=
  have hs := shaped_fill.1 h.shaped
  have c_p : m.mem p = some { color := cP, val := vP, l := some l, r := some t, parent := some g }
    := hs.2.1
  have c_l : m.mem l = some { color := cl, val := vl, l := ll.top, r := lr.top, parent := some p }
    := hs.2.2.1.1
  have c_t : m.mem t = some { color := ct, val := vt, l := none, r := some r, parent := some p } :=
    hs.2.2.2.1
  have c_r : m.mem r = some { color := cr, val := vr, l := rl.top, r := rr.top, parent := some t }
    := hs.2.2.2.2.2.1
  have c_g : m.mem g = some { color := cg, val := vg, l := sg.top, r := some p, parent := ptop q }
    := hs.1.1
  have hB : (List.flatten [(pbefore q).map Prod.fst, sg.addrs, [g], ll.addrs, [l], lr.addrs, [p],
    [t], rl.addrs, [r], rr.addrs, (pafter q).map Prod.fst]).Nodup := by
    have e : (fill ((.R g cg vg sg) :: q) (.node p cP vP (.node l cl vl ll lr) (.node t ct vt .nil
      (.node r cr vr rl rr)))).addrs =
        List.flatten [(pbefore q).map Prod.fst, sg.addrs, [g], ll.addrs, [l], lr.addrs, [p], [t],
          rl.addrs, [r], rr.addrs, (pafter q).map Prod.fst] := by
      rw [fill_addrs]
      simp [pbefore, pafter, pbefore_append, pafter_append, tree.addrs]
    exact e ▸ h.nodup
  have hr_p : some p ≠ m._root := by
    have h0 := h
    simp only [fill_L, fill_R, fill_append] at h0
    exact Rep.ne_root (f := (.R g cg vg sg)) (q := q) h0 (by simp [mem_fill_addrs])
  have hr_t : some t ≠ m._root := by
    have h0 := h
    simp only [fill_L, fill_R, fill_append] at h0
    exact Rep.ne_root (f := (.R g cg vg sg)) (q := q) h0 (by simp [mem_fill_addrs])
  Exists.elim (swap_adj_succ_R_node_cells c_p c_l c_t c_r c_g (blocks_ne_at hB 4 7 rfl rfl rfl)
    (blocks_ne_at hB 7 4 rfl rfl rfl) (blocks_ne_at hB 6 4 rfl rfl rfl) (blocks_ne_at hB 2 7 rfl
    rfl rfl) (blocks_ne_at hB 7 2 rfl rfl rfl) (blocks_ne_at hB 2 4 rfl rfl rfl) (blocks_ne_at hB 9
    6 rfl rfl rfl) (blocks_ne_at hB 6 9 rfl rfl rfl) (blocks_ne_at hB 9 4 rfl rfl rfl)
    (blocks_ne_at hB 9 2 rfl rfl rfl) (blocks_ne_at hB 7 9 rfl rfl rfl) (blocks_ne_at hB 6 2 rfl
    rfl rfl) (blocks_ne_at hB 7 6 rfl rfl rfl) (blocks_ne_at hB 6 7 rfl rfl rfl) (blocks_ne_at hB 4
    2 rfl rfl rfl) (blocks_ne_at hB 4 9 rfl rfl rfl) (blocks_ne_at hB 4 6 rfl rfl rfl)
    (blocks_ne_at hB 9 7 rfl rfl rfl) (blocks_ne_at hB 2 9 rfl rfl rfl) (blocks_ne_at hB 2 6 rfl
    rfl rfl) (tree.top_ne_of_not_mem (blocks_not_mem_at hB 6 1 rfl rfl rfl))
    (tree.ne_top_of_not_mem (blocks_not_mem_at hB 6 1 rfl rfl rfl)) hr_p hr_t) fun m2 H =>
  have fr := H.2.2.2.2.2.2.1
  have a_ll : ∀ b ∈ ll.addrs, m2.mem b = m.mem b :=
    region_agree hB [4, 2, 9, 6, 7] [l, g, r, p, t] 3 rfl rfl rfl fr
  have a_lr : ∀ b ∈ lr.addrs, m2.mem b = m.mem b :=
    region_agree hB [4, 2, 9, 6, 7] [l, g, r, p, t] 5 rfl rfl rfl fr
  have a_rl : ∀ b ∈ rl.addrs, m2.mem b = m.mem b :=
    region_agree hB [4, 2, 9, 6, 7] [l, g, r, p, t] 8 rfl rfl rfl fr
  have a_rr : ∀ b ∈ rr.addrs, m2.mem b = m.mem b :=
    region_agree hB [4, 2, 9, 6, 7] [l, g, r, p, t] 10 rfl rfl rfl fr
  have a_sg : ∀ b ∈ sg.addrs, m2.mem b = m.mem b :=
    region_agree hB [4, 2, 9, 6, 7] [l, g, r, p, t] 1 rfl rfl rfl fr
  have a_q : ∀ b ∈ paddrs q, m2.mem b = m.mem b :=
    paddrs_agree (region_agree hB [4, 2, 9, 6, 7] [l, g, r, p, t] 0 rfl rfl rfl fr)
      (region_agree hB [4, 2, 9, 6, 7] [l, g, r, p, t] 11 rfl rfl rfl fr)
  have hroot : m2._root = (fill ((.R g cg vg sg) :: q) (.node t cP vt (.node l cl vl ll lr) (.node
    p ct vP .nil (.node r cr vr rl rr)))).top := by
    rw [H.2.2.2.2.2.2.2.1]
    refine h.root.trans ?_
    simp only [fill_L, fill_R, fill_append]
    exact fill_top_congr rfl
  have hpath : ShapedPath m2.mem ((.R g cg vg sg) :: q) (some t) :=
    ⟨H.2.2.2.2.2.1, Shaped.agree hs.1.2.1 a_sg, ShapedPath.agree_path hs.1.2.2 a_q⟩
  have htree : Shaped m2.mem (some g) (.node t cP vt (.node l cl vl ll lr) (.node p ct vP .nil
    (.node r cr vr rl rr))) :=
    ⟨H.2.2.2.1, ⟨H.2.2.1, Shaped.agree hs.2.2.1.2.1 a_ll, Shaped.agree hs.2.2.1.2.2 a_lr⟩, ⟨H.2.1,
      trivial, ⟨H.2.2.2.2.1, Shaped.agree hs.2.2.2.2.2.2.1 a_rl, Shaped.agree hs.2.2.2.2.2.2.2
      a_rr⟩⟩⟩
  ⟨m2, H.1, h.of_perm (perm_swap_adj_succ _) H.2.2.2.2.2.2.2.2.1 hroot (shaped_fill.2 ⟨hpath,
    htree⟩), ⟨H.2.2.2.2.2.2.2.2.1, H.2.2.2.2.2.2.2.2.2.1, H.2.2.2.2.2.2.2.2.2.2⟩⟩

/-- The cells after `_swap_nodes`, case `adj_pred_R_node`. -/
theorem swap_adj_pred_R_node_cells {m : map K V} {p t r l g : Nat}
    {cP ct cr cl cg : color_type} {vP vt vr vl vg : Option (K × V)} {q1 q2 q3 q4 q5 q6 : ptr}
    (c_p : m.mem p = some { color := cP, val := vP, l := some t, r := some l, parent := some g })
    (c_t : m.mem t = some { color := ct, val := vt, l := some r, r := none, parent := some p })
    (c_r : m.mem r = some { color := cr, val := vr, l := q1, r := q2, parent := some t })
    (c_l : m.mem l = some { color := cl, val := vl, l := q3, r := q4, parent := some p })
    (c_g : m.mem g = some { color := cg, val := vg, l := q5, r := some p, parent := q6 })
    (d_l_t : l ≠ t)
    (d_t_l : t ≠ l)
    (d_p_l : p ≠ l)
    (d_g_t : g ≠ t)
    (d_t_g : t ≠ g)
    (d_g_l : g ≠ l)
    (d_r_p : r ≠ p)
    (d_p_r : p ≠ r)
    (d_r_l : r ≠ l)
    (d_r_g : r ≠ g)
    (d_t_r : t ≠ r)
    (d_p_g : p ≠ g)
    (d_t_p : t ≠ p)
    (d_p_t : p ≠ t)
    (d_r_t : r ≠ t)
    (d_l_g : l ≠ g)
    (d_l_r : l ≠ r)
    (d_l_p : l ≠ p)
    (d_g_r : g ≠ r)
    (d_g_p : g ≠ p)
    (t_q5_p : q5 ≠ some p)
    (u_q5_p : some p ≠ q5)
    (hr_p : some p ≠ m._root)
    (hr_t : some t ≠ m._root) :
    ∃ m2, map._swap_nodes m (some p) (some t) = some m2 ∧
      m2.mem p = some { color := ct, val := vP, l := some r, r := none, parent := some t } ∧
      m2.mem t = some { color := cP, val := vt, l := some p, r := some l, parent := some g } ∧
      m2.mem r = some { color := cr, val := vr, l := q1, r := q2, parent := some p } ∧
      m2.mem l = some { color := cl, val := vl, l := q3, r := q4, parent := some t } ∧
      m2.mem g = some { color := cg, val := vg, l := q5, r := some t, parent := q6 } ∧
      (∀ b, b ∉ [l, g, r, p, t] → m2.mem b = m.mem b) ∧
      m2._root = m._root ∧
      m2.brk = m.brk ∧
      m2._sz = m._sz ∧
      m2._cmp_k = m._cmp_k :=
  have hr0 : m._root = m._root := rfl
  Exists.elim (set_parent_step (m := m) c_l (some t)) fun m1 S1 =>
  have w1 : m1.mem l = some { color := cl, val := vl, l := q3, r := q4, parent := some t } := S1.2.1
  Exists.elim (set_r_step (m := m1) ((S1.2.2.1 g d_g_l).trans c_g) (some t)) fun m2 S2 =>
  have w2 : m2.mem g = some { color := cg, val := vg, l := q5, r := some t, parent := q6 } := S2.2.1
  have k2_t := (S2.2.2.1 t d_t_g).trans ((S1.2.2.1 t d_t_l).trans c_t)
  have k2_r := (S2.2.2.1 r d_r_g).trans ((S1.2.2.1 r d_r_l).trans c_r)
  Exists.elim (set_parent_step (m := m2) k2_r (some p)) fun m3 S3 =>
  have w3 : m3.mem r = some { color := cr, val := vr, l := q1, r := q2, parent := some p } := S3.2.1
  have xr3 : m3._root = m._root := S3.2.2.2.2.1.trans (S2.2.2.2.2.1.trans (S1.2.2.2.2.1.trans hr0))
  have k2_p := (S2.2.2.1 p d_p_g).trans ((S1.2.2.1 p d_p_l).trans c_p)
  Exists.elim (set_l_step (m := m3) ((S3.2.2.1 p d_p_r).trans k2_p) (some r)) fun m4 S4 =>
  have w4 : m4.mem p = some { color := cP, val := vP, l := some r, r := some l, parent := some g }
    := S4.2.1
  have k4_t := (S4.2.2.1 t d_t_p).trans ((S3.2.2.1 t d_t_r).trans k2_t)
  Exists.elim (set_r_step (m := m4) w4 none) fun m5 S5 =>
  have w5 : m5.mem p = some { color := cP, val := vP, l := some r, r := none, parent := some g } :=
    S5.2.1
  Exists.elim (set_parent_step (m := m5) w5 (some t)) fun m6 S6 =>
  have w6 : m6.mem p = some { color := cP, val := vP, l := some r, r := none, parent := some t } :=
    S6.2.1
  have xr6 : m6._root = m._root := S6.2.2.2.2.1.trans (S5.2.2.2.2.1.trans (S4.2.2.2.2.1.trans xr3))
  have k6_t := (S6.2.2.1 t d_t_p).trans ((S5.2.2.1 t d_t_p).trans k4_t)
  Exists.elim (set_l_step (m := m6) k6_t (some p)) fun m7 S7 =>
  have w7 : m7.mem t = some { color := ct, val := vt, l := some p, r := none, parent := some p } :=
    S7.2.1
  Exists.elim (set_r_step (m := m7) w7 (some l)) fun m8 S8 =>
  have w8 : m8.mem t = some { color := ct, val := vt, l := some p, r := some l, parent := some p }
    := S8.2.1
  Exists.elim (set_parent_step (m := m8) w8 (some g)) fun m9 S9 =>
  have w9 : m9.mem t = some { color := ct, val := vt, l := some p, r := some l, parent := some g }
    := S9.2.1
  have xr9 : m9._root = m._root := S9.2.2.2.2.1.trans (S8.2.2.2.2.1.trans (S7.2.2.2.2.1.trans xr6))
  have k8_p := (S8.2.2.1 p d_p_t).trans ((S7.2.2.1 p d_p_t).trans w6)
  Exists.elim (set_color_step (m := m9) ((S9.2.2.1 p d_p_t).trans k8_p) ct) fun m10 S10 =>
  have w10 : m10.mem p = some { color := ct, val := vP, l := some r, r := none, parent := some t }
    := S10.2.1
  Exists.elim (set_color_step (m := m10) ((S10.2.2.1 t d_t_p).trans w9) cP) fun m11 S11 =>
  have w11 : m11.mem t = some { color := cP, val := vt, l := some p, r := some l, parent := some g
    } := S11.2.1
  have k5_r := (S5.2.2.1 r d_r_p).trans ((S4.2.2.1 r d_r_p).trans w3)
  have k7_r := (S7.2.2.1 r d_r_t).trans ((S6.2.2.1 r d_r_p).trans k5_r)
  have k9_r := (S9.2.2.1 r d_r_t).trans ((S8.2.2.1 r d_r_t).trans k7_r)
  have k11_r := (S11.2.2.1 r d_r_t).trans ((S10.2.2.1 r d_r_p).trans k9_r)
  have k3_l := (S3.2.2.1 l d_l_r).trans ((S2.2.2.1 l d_l_g).trans w1)
  have k5_l := (S5.2.2.1 l d_l_p).trans ((S4.2.2.1 l d_l_p).trans k3_l)
  have k7_l := (S7.2.2.1 l d_l_t).trans ((S6.2.2.1 l d_l_p).trans k5_l)
  have k9_l := (S9.2.2.1 l d_l_t).trans ((S8.2.2.1 l d_l_t).trans k7_l)
  have k11_l := (S11.2.2.1 l d_l_t).trans ((S10.2.2.1 l d_l_p).trans k9_l)
  have k4_g := (S4.2.2.1 g d_g_p).trans ((S3.2.2.1 g d_g_r).trans w2)
  have k6_g := (S6.2.2.1 g d_g_p).trans ((S5.2.2.1 g d_g_p).trans k4_g)
  have k8_g := (S8.2.2.1 g d_g_t).trans ((S7.2.2.1 g d_g_t).trans k6_g)
  have k10_g := (S10.2.2.1 g d_g_p).trans ((S9.2.2.1 g d_g_t).trans k8_g)
  have hop : map._swap_nodes m (some p) (some t) = some m11 := by
    simp only [map._swap_nodes, map._swap_set_parent, map._swap_set_child,
      (get_l_eq (m := m) c_p : get_l m (some p) = some (some t)),
      (get_r_eq (m := m) c_p : get_r m (some p) = some (some l)), d_l_t, d_t_l, S1.1,
      (get_parent_eq (m := m1) ((S1.2.2.1 p d_p_l).trans c_p) : get_parent m1 (some p) = some (some
        g)),
      d_g_t, d_t_g,
      (get_l_eq (m := m1) ((S1.2.2.1 g d_g_l).trans c_g) : get_l m1 (some g) = some q5), t_q5_p,
      u_q5_p, S2.1, ((S2.2.2.2.2.1.trans (S1.2.2.2.2.1.trans hr0)) : m2._root = m._root), hr_p,
      hr_t, (get_l_eq (m := m2) k2_t : get_l m2 (some t) = some (some r)), d_r_p, d_p_r, S3.1,
      (get_r_eq (m := m3) ((S3.2.2.1 t d_t_r).trans k2_t) : get_r m3 (some t) = some none),
      (get_parent_eq (m := m3) ((S3.2.2.1 t d_t_r).trans k2_t) : get_parent m3 (some t) = some
        (some p)),
      (get_l_eq (m := m3) ((S3.2.2.1 p d_p_r).trans k2_p) : get_l m3 (some p) = some (some t)),
      (get_r_eq (m := m3) ((S3.2.2.1 p d_p_r).trans k2_p) : get_r m3 (some p) = some (some l)),
      (get_parent_eq (m := m3) ((S3.2.2.1 p d_p_r).trans k2_p) : get_parent m3 (some p) = some
        (some g)),
      (get_color_eq (m := m3) ((S3.2.2.1 p d_p_r).trans k2_p) : get_color m3 (some p) = some cP),
      (get_l_eq (m := m3) ((S3.2.2.1 t d_t_r).trans k2_t) : get_l m3 (some t) = some (some r)),
      S4.1, (get_r_eq (m := m4) k4_t : get_r m4 (some t) = some none), S5.1,
      (get_parent_eq (m := m5) ((S5.2.2.1 t d_t_p).trans k4_t) : get_parent m5 (some t) = some
        (some p)),
      S6.1, S7.1, S8.1, S9.1, (get_color_eq (m := m9) w9 : get_color m9 (some t) = some ct),
      S10.1, S11.1, bind_eq_ub, pure_eq_some, ub_bind_some, ne_eq, Option.some.injEq,
      not_false_eq_true, not_true_eq_false, and_self, and_true, true_and, and_false, false_and,
      if_true, if_false, ite_true, ite_false, reduceCtorEq, reduceIte, ite_not, not_not,
      Bool.not_eq_true, decide_eq_true_eq, decide_eq_false_iff_not, decide_True, decide_False,
      Bool.false_eq_true, eq_self_iff_true, Option.isSome_some, Option.isSome_none]
  have h_l : ∀ b, b ∉ [l, g, r, p, t] → b ≠ l := fun b hb e => hb (e ▸ List.Mem.head _)
  have h_g : ∀ b, b ∉ [l, g, r, p, t] → b ≠ g := fun b hb e => hb (e ▸ List.Mem.tail _
    (List.Mem.head _))
  have h_r : ∀ b, b ∉ [l, g, r, p, t] → b ≠ r := fun b hb e => hb (e ▸ List.Mem.tail _
    (List.Mem.tail _ (List.Mem.head _)))
  have h_p : ∀ b, b ∉ [l, g, r, p, t] → b ≠ p := fun b hb e => hb (e ▸ List.Mem.tail _
    (List.Mem.tail _ (List.Mem.tail _ (List.Mem.head _))))
  have h_t : ∀ b, b ∉ [l, g, r, p, t] → b ≠ t := fun b hb e => hb (e ▸ List.Mem.tail _
    (List.Mem.tail _ (List.Mem.tail _ (List.Mem.tail _ (List.Mem.head _)))))
  ⟨m11, hop, ((S11.2.2.1 p d_p_t).trans w10), w11, k11_r, k11_l, ((S11.2.2.1 g d_g_t).trans k10_g),
    (fun b hb => ((S11.2.2.1 b (h_t b hb)).trans ((S10.2.2.1 b (h_p b hb)).trans ((S9.2.2.1 b (h_t
    b hb)).trans ((S8.2.2.1 b (h_t b hb)).trans ((S7.2.2.1 b (h_t b hb)).trans ((S6.2.2.1 b (h_p b
    hb)).trans ((S5.2.2.1 b (h_p b hb)).trans ((S4.2.2.1 b (h_p b hb)).trans ((S3.2.2.1 b (h_r b
    hb)).trans ((S2.2.2.1 b (h_g b hb)).trans (S1.2.2.1 b (h_l b hb))))))))))))),
    (S11.2.2.2.2.1.trans (S10.2.2.2.2.1.trans xr9)), (S11.2.2.2.1.trans (S10.2.2.2.1.trans
    (S9.2.2.2.1.trans (S8.2.2.2.1.trans (S7.2.2.2.1.trans (S6.2.2.2.1.trans (S5.2.2.2.1.trans
    (S4.2.2.2.1.trans (S3.2.2.2.1.trans (S2.2.2.2.1.trans S1.2.2.2.1)))))))))),
    (S11.2.2.2.2.2.1.trans (S10.2.2.2.2.2.1.trans (S9.2.2.2.2.2.1.trans (S8.2.2.2.2.2.1.trans
    (S7.2.2.2.2.2.1.trans (S6.2.2.2.2.2.1.trans (S5.2.2.2.2.2.1.trans (S4.2.2.2.2.2.1.trans
    (S3.2.2.2.2.2.1.trans (S2.2.2.2.2.2.1.trans S1.2.2.2.2.2.1)))))))))), (S11.2.2.2.2.2.2.trans
    (S10.2.2.2.2.2.2.trans (S9.2.2.2.2.2.2.trans (S8.2.2.2.2.2.2.trans (S7.2.2.2.2.2.2.trans
    (S6.2.2.2.2.2.2.trans (S5.2.2.2.2.2.2.trans (S4.2.2.2.2.2.2.trans (S3.2.2.2.2.2.2.trans
    (S2.2.2.2.2.2.2.trans S1.2.2.2.2.2.2))))))))))⟩

/-- Member `_swap_nodes` of a node and its left child, which has no right child. -/
theorem swap_adj_pred_R_node
    {m : map K V} {p t r l g : Nat} {cP ct cr cl cg : color_type}
    {vP vt vr vl vg : Option (K × V)} {rl rr ll lr sg : tree K V} {q : List (frame K V)}
    (h : Rep m (fill ((.R g cg vg sg) :: q)
      (.node p cP vP (.node t ct vt (.node r cr vr rl rr) .nil) (.node l cl vl ll lr)))) :
    ∃ m2, map._swap_nodes m (some p) (some t) = some m2 ∧
      Rep m2 (fill ((.R g cg vg sg) :: q)
        (.node t cP vt (.node p ct vP (.node r cr vr rl rr) .nil) (.node l cl vl ll lr))) ∧ SameAux m m2 :=
  have hs := shaped_fill.1 h.shaped
  have c_p : m.mem p = some { color := cP, val := vP, l := some t, r := some l, parent := some g }
    := hs.2.1
  have c_t : m.mem t = some { color := ct, val := vt, l := some r, r := none, parent := some p } :=
    hs.2.2.1.1
  have c_r : m.mem r = some { color := cr, val := vr, l := rl.top, r := rr.top, parent := some t }
    := hs.2.2.1.2.1.1
  have c_l : m.mem l = some { color := cl, val := vl, l := ll.top, r := lr.top, parent := some p }
    := hs.2.2.2.1
  have c_g : m.mem g = some { color := cg, val := vg, l := sg.top, r := some p, parent := ptop q }
    := hs.1.1
  have hB : (List.flatten [(pbefore q).map Prod.fst, sg.addrs, [g], rl.addrs, [r], rr.addrs, [t],
    [p], ll.addrs, [l], lr.addrs, (pafter q).map Prod.fst]).Nodup := by
    have e : (fill ((.R g cg vg sg) :: q) (.node p cP vP (.node t ct vt (.node r cr vr rl rr) .nil)
      (.node l cl vl ll lr))).addrs =
        List.flatten [(pbefore q).map Prod.fst, sg.addrs, [g], rl.addrs, [r], rr.addrs, [t], [p],
          ll.addrs, [l], lr.addrs, (pafter q).map Prod.fst] := by
      rw [fill_addrs]
      simp [pbefore, pafter, pbefore_append, pafter_append, tree.addrs]
    exact e ▸ h.nodup
  have hr_p : some p ≠ m._root := by
    have h0 := h
    simp only [fill_L, fill_R, fill_append] at h0
    exact Rep.ne_root (f := (.R g cg vg sg)) (q := q) h0 (by simp [mem_fill_addrs])
  have hr_t : some t ≠ m._root := by
    have h0 := h
    simp only [fill_L, fill_R, fill_append] at h0
    exact Rep.ne_root (f := (.R g cg vg sg)) (q := q) h0 (by simp [mem_fill_addrs])
  Exists.elim (swap_adj_pred_R_node_cells c_p c_t c_r c_l c_g (blocks_ne_at hB 9 6 rfl rfl rfl)
    (blocks_ne_at hB 6 9 rfl rfl rfl) (blocks_ne_at hB 7 9 rfl rfl rfl) (blocks_ne_at hB 2 6 rfl
    rfl rfl) (blocks_ne_at hB 6 2 rfl rfl rfl) (blocks_ne_at hB 2 9 rfl rfl rfl) (blocks_ne_at hB 4
    7 rfl rfl rfl) (blocks_ne_at hB 7 4 rfl rfl rfl) (blocks_ne_at hB 4 9 rfl rfl rfl)
    (blocks_ne_at hB 4 2 rfl rfl rfl) (blocks_ne_at hB 6 4 rfl rfl rfl) (blocks_ne_at hB 7 2 rfl
    rfl rfl) (blocks_ne_at hB 6 7 rfl rfl rfl) (blocks_ne_at hB 7 6 rfl rfl rfl) (blocks_ne_at hB 4
    6 rfl rfl rfl) (blocks_ne_at hB 9 2 rfl rfl rfl) (blocks_ne_at hB 9 4 rfl rfl rfl)
    (blocks_ne_at hB 9 7 rfl rfl rfl) (blocks_ne_at hB 2 4 rfl rfl rfl) (blocks_ne_at hB 2 7 rfl
    rfl rfl) (tree.top_ne_of_not_mem (blocks_not_mem_at hB 7 1 rfl rfl rfl))
    (tree.ne_top_of_not_mem (blocks_not_mem_at hB 7 1 rfl rfl rfl)) hr_p hr_t) fun m2 H =>
  have fr := H.2.2.2.2.2.2.1
  have a_rl : ∀ b ∈ rl.addrs, m2.mem b = m.mem b :=
    region_agree hB [9, 2, 4, 7, 6] [l, g, r, p, t] 3 rfl rfl rfl fr
  have a_rr : ∀ b ∈ rr.addrs, m2.mem b = m.mem b :=
    region_agree hB [9, 2, 4, 7, 6] [l, g, r, p, t] 5 rfl rfl rfl fr
  have a_ll : ∀ b ∈ ll.addrs, m2.mem b = m.mem b :=
    region_agree hB [9, 2, 4, 7, 6] [l, g, r, p, t] 8 rfl rfl rfl fr
  have a_lr : ∀ b ∈ lr.addrs, m2.mem b = m.mem b :=
    region_agree hB [9, 2, 4, 7, 6] [l, g, r, p, t] 10 rfl rfl rfl fr
  have a_sg : ∀ b ∈ sg.addrs, m2.mem b = m.mem b :=
    region_agree hB [9, 2, 4, 7, 6] [l, g, r, p, t] 1 rfl rfl rfl fr
  have a_q : ∀ b ∈ paddrs q, m2.mem b = m.mem b :=
    paddrs_agree (region_agree hB [9, 2, 4, 7, 6] [l, g, r, p, t] 0 rfl rfl rfl fr)
      (region_agree hB [9, 2, 4, 7, 6] [l, g, r, p, t] 11 rfl rfl rfl fr)
  have hroot : m2._root = (fill ((.R g cg vg sg) :: q) (.node t cP vt (.node p ct vP (.node r cr vr
    rl rr) .nil) (.node l cl vl ll lr))).top := by
    rw [H.2.2.2.2.2.2.2.1]
    refine h.root.trans ?_
    simp only [fill_L, fill_R, fill_append]
    exact fill_top_congr rfl
  have hpath : ShapedPath m2.mem ((.R g cg vg sg) :: q) (some t) :=
    ⟨H.2.2.2.2.2.1, Shaped.agree hs.1.2.1 a_sg, ShapedPath.agree_path hs.1.2.2 a_q⟩
  have htree : Shaped m2.mem (some g) (.node t cP vt (.node p ct vP (.node r cr vr rl rr) .nil)
    (.node l cl vl ll lr)) :=
    ⟨H.2.2.1, ⟨H.2.1, ⟨H.2.2.2.1, Shaped.agree hs.2.2.1.2.1.2.1 a_rl, Shaped.agree hs.2.2.1.2.1.2.2
      a_rr⟩, trivial⟩, ⟨H.2.2.2.2.1, Shaped.agree hs.2.2.2.2.1 a_ll, Shaped.agree hs.2.2.2.2.2
      a_lr⟩⟩
  ⟨m2, H.1, h.of_perm (perm_swap_adj_pred _) H.2.2.2.2.2.2.2.2.1 hroot (shaped_fill.2 ⟨hpath,
    htree⟩), ⟨H.2.2.2.2.2.2.2.2.1, H.2.2.2.2.2.2.2.2.2.1, H.2.2.2.2.2.2.2.2.2.2⟩⟩

/-- The cells after `_swap_nodes`, case `far1_succ_R_node`. -/
theorem swap_far1_succ_R_node_cells {m : map K V} {t r k p l g : Nat}
    {ct cr ck cP cl cg : color_type} {vt vr vk vP vl vg : Option (K × V)}
    {q1 q2 q3 q4 q5 q6 q7 : ptr}
    (c_t : m.mem t = some { color := ct, val := vt, l := none, r := some r, parent := some k })
    (c_r : m.mem r = some { color := cr, val := vr, l := q1, r := q2, parent := some t })
    (c_k : m.mem k = some { color := ck, val := vk, l := some t, r := q3, parent := some p })
    (c_p : m.mem p = some { color := cP, val := vP, l := some l, r := some k, parent := some g })
    (c_l : m.mem l = some { color := cl, val := vl, l := q4, r := q5, parent := some p })
    (c_g : m.mem g = some { color := cg, val := vg, l := q6, r := some p, parent := q7 })
    (d_l_t : l ≠ t)
    (d_t_l : t ≠ l)
    (d_p_l : p ≠ l)
    (d_k_t : k ≠ t)
    (d_t_k : t ≠ k)
    (d_k_l : k ≠ l)
    (d_p_k : p ≠ k)
    (d_g_t : g ≠ t)
    (d_t_g : t ≠ g)
    (d_g_l : g ≠ l)
    (d_g_k : g ≠ k)
    (d_r_p : r ≠ p)
    (d_p_r : p ≠ r)
    (d_r_l : r ≠ l)
    (d_r_k : r ≠ k)
    (d_r_g : r ≠ g)
    (d_t_r : t ≠ r)
    (d_k_p : k ≠ p)
    (d_k_g : k ≠ g)
    (d_k_r : k ≠ r)
    (d_p_g : p ≠ g)
    (d_t_p : t ≠ p)
    (d_p_t : p ≠ t)
    (d_r_t : r ≠ t)
    (d_l_k : l ≠ k)
    (d_l_g : l ≠ g)
    (d_l_r : l ≠ r)
    (d_l_p : l ≠ p)
    (d_g_r : g ≠ r)
    (d_g_p : g ≠ p)
    (t_q6_p : q6 ≠ some p)
    (u_q6_p : some p ≠ q6)
    (hr_p : some p ≠ m._root)
    (hr_t : some t ≠ m._root) :
    ∃ m2, map._swap_nodes m (some p) (some t) = some m2 ∧
      m2.mem t = some { color := cP, val := vt, l := some l, r := some k, parent := some g } ∧
      m2.mem r = some { color := cr, val := vr, l := q1, r := q2, parent := some p } ∧
      m2.mem k = some { color := ck, val := vk, l := some p, r := q3, parent := some t } ∧
      m2.mem p = some { color := ct, val := vP, l := none, r := some r, parent := some k } ∧
      m2.mem l = some { color := cl, val := vl, l := q4, r := q5, parent := some t } ∧
      m2.mem g = some { color := cg, val := vg, l := q6, r := some t, parent := q7 } ∧
      (∀ b, b ∉ [l, k, g, r, p, t] → m2.mem b = m.mem b) ∧
      m2._root = m._root ∧
      m2.brk = m.brk ∧
      m2._sz = m._sz ∧
      m2._cmp_k = m._cmp_k :=
  have hr0 : m._root = m._root := rfl
  Exists.elim (set_parent_step (m := m) c_l (some t)) fun m1 S1 =>
  have w1 : m1.mem l = some { color := cl, val := vl, l := q4, r := q5, parent := some t } := S1.2.1
  Exists.elim (set_parent_step (m := m1) ((S1.2.2.1 k d_k_l).trans c_k) (some t)) fun m2 S2 =>
  have w2 : m2.mem k = some { color := ck, val := vk, l := some t, r := q3, parent := some t } :=
    S2.2.1
  have k2_p := (S2.2.2.1 p d_p_k).trans ((S1.2.2.1 p d_p_l).trans c_p)
  have k2_g := (S2.2.2.1 g d_g_k).trans ((S1.2.2.1 g d_g_l).trans c_g)
  Exists.elim (set_r_step (m := m2) k2_g (some t)) fun m3 S3 =>
  have w3 : m3.mem g = some { color := cg, val := vg, l := q6, r := some t, parent := q7 } := S3.2.1
  have xr3 : m3._root = m._root := S3.2.2.2.2.1.trans (S2.2.2.2.2.1.trans (S1.2.2.2.2.1.trans hr0))
  have k2_t := (S2.2.2.1 t d_t_k).trans ((S1.2.2.1 t d_t_l).trans c_t)
  have k2_r := (S2.2.2.1 r d_r_k).trans ((S1.2.2.1 r d_r_l).trans c_r)
  Exists.elim (set_parent_step (m := m3) ((S3.2.2.1 r d_r_g).trans k2_r) (some p)) fun m4 S4 =>
  have w4 : m4.mem r = some { color := cr, val := vr, l := q1, r := q2, parent := some p } := S4.2.1
  have k4_t := (S4.2.2.1 t d_t_r).trans ((S3.2.2.1 t d_t_g).trans k2_t)
  have k4_k := (S4.2.2.1 k d_k_r).trans ((S3.2.2.1 k d_k_g).trans w2)
  Exists.elim (set_l_step (m := m4) k4_k (some p)) fun m5 S5 =>
  have w5 : m5.mem k = some { color := ck, val := vk, l := some p, r := q3, parent := some t } :=
    S5.2.1
  have k4_p := (S4.2.2.1 p d_p_r).trans ((S3.2.2.1 p d_p_g).trans k2_p)
  Exists.elim (set_l_step (m := m5) ((S5.2.2.1 p d_p_k).trans k4_p) none) fun m6 S6 =>
  have w6 : m6.mem p = some { color := cP, val := vP, l := none, r := some k, parent := some g } :=
    S6.2.1
  have xr6 : m6._root = m._root := S6.2.2.2.2.1.trans (S5.2.2.2.2.1.trans (S4.2.2.2.2.1.trans xr3))
  have k6_t := (S6.2.2.1 t d_t_p).trans ((S5.2.2.1 t d_t_k).trans k4_t)
  Exists.elim (set_r_step (m := m6) w6 (some r)) fun m7 S7 =>
  have w7 : m7.mem p = some { color := cP, val := vP, l := none, r := some r, parent := some g } :=
    S7.2.1
  Exists.elim (set_parent_step (m := m7) w7 (some k)) fun m8 S8 =>
  have w8 : m8.mem p = some { color := cP, val := vP, l := none, r := some r, parent := some k } :=
    S8.2.1
  have k8_t := (S8.2.2.1 t d_t_p).trans ((S7.2.2.1 t d_t_p).trans k6_t)
  Exists.elim (set_l_step (m := m8) k8_t (some l)) fun m9 S9 =>
  have w9 : m9.mem t = some { color := ct, val := vt, l := some l, r := some r, parent := some k }
    := S9.2.1
  have xr9 : m9._root = m._root := S9.2.2.2.2.1.trans (S8.2.2.2.2.1.trans (S7.2.2.2.2.1.trans xr6))
  Exists.elim (set_r_step (m := m9) w9 (some k)) fun m10 S10 =>
  have w10 : m10.mem t = some { color := ct, val := vt, l := some l, r := some k, parent := some k
    } := S10.2.1
  Exists.elim (set_parent_step (m := m10) w10 (some g)) fun m11 S11 =>
  have w11 : m11.mem t = some { color := ct, val := vt, l := some l, r := some k, parent := some g
    } := S11.2.1
  have k10_p := (S10.2.2.1 p d_p_t).trans ((S9.2.2.1 p d_p_t).trans w8)
  Exists.elim (set_color_step (m := m11) ((S11.2.2.1 p d_p_t).trans k10_p) ct) fun m12 S12 =>
  have w12 : m12.mem p = some { color := ct, val := vP, l := none, r := some r, parent := some k }
    := S12.2.1
  have xr12 : m12._root = m._root := S12.2.2.2.2.1.trans (S11.2.2.2.2.1.trans (S10.2.2.2.2.1.trans
    xr9))
  Exists.elim (set_color_step (m := m12) ((S12.2.2.1 t d_t_p).trans w11) cP) fun m13 S13 =>
  have w13 : m13.mem t = some { color := cP, val := vt, l := some l, r := some k, parent := some g
    } := S13.2.1
  have k6_r := (S6.2.2.1 r d_r_p).trans ((S5.2.2.1 r d_r_k).trans w4)
  have k8_r := (S8.2.2.1 r d_r_p).trans ((S7.2.2.1 r d_r_p).trans k6_r)
  have k10_r := (S10.2.2.1 r d_r_t).trans ((S9.2.2.1 r d_r_t).trans k8_r)
  have k12_r := (S12.2.2.1 r d_r_p).trans ((S11.2.2.1 r d_r_t).trans k10_r)
  have k7_k := (S7.2.2.1 k d_k_p).trans ((S6.2.2.1 k d_k_p).trans w5)
  have k9_k := (S9.2.2.1 k d_k_t).trans ((S8.2.2.1 k d_k_p).trans k7_k)
  have k11_k := (S11.2.2.1 k d_k_t).trans ((S10.2.2.1 k d_k_t).trans k9_k)
  have k13_k := (S13.2.2.1 k d_k_t).trans ((S12.2.2.1 k d_k_p).trans k11_k)
  have k3_l := (S3.2.2.1 l d_l_g).trans ((S2.2.2.1 l d_l_k).trans w1)
  have k5_l := (S5.2.2.1 l d_l_k).trans ((S4.2.2.1 l d_l_r).trans k3_l)
  have k7_l := (S7.2.2.1 l d_l_p).trans ((S6.2.2.1 l d_l_p).trans k5_l)
  have k9_l := (S9.2.2.1 l d_l_t).trans ((S8.2.2.1 l d_l_p).trans k7_l)
  have k11_l := (S11.2.2.1 l d_l_t).trans ((S10.2.2.1 l d_l_t).trans k9_l)
  have k13_l := (S13.2.2.1 l d_l_t).trans ((S12.2.2.1 l d_l_p).trans k11_l)
  have k5_g := (S5.2.2.1 g d_g_k).trans ((S4.2.2.1 g d_g_r).trans w3)
  have k7_g := (S7.2.2.1 g d_g_p).trans ((S6.2.2.1 g d_g_p).trans k5_g)
  have k9_g := (S9.2.2.1 g d_g_t).trans ((S8.2.2.1 g d_g_p).trans k7_g)
  have k11_g := (S11.2.2.1 g d_g_t).trans ((S10.2.2.1 g d_g_t).trans k9_g)
  have k13_g := (S13.2.2.1 g d_g_t).trans ((S12.2.2.1 g d_g_p).trans k11_g)
  have hop : map._swap_nodes m (some p) (some t) = some m13 := by
    simp only [map._swap_nodes, map._swap_set_parent, map._swap_set_child,
      (get_l_eq (m := m) c_p : get_l m (some p) = some (some l)), d_l_t, d_t_l, S1.1,
      (get_r_eq (m := m1) ((S1.2.2.1 p d_p_l).trans c_p) : get_r m1 (some p) = some (some k)),
      d_k_t, d_t_k, S2.1,
      (get_parent_eq (m := m2) k2_p : get_parent m2 (some p) = some (some g)), d_g_t, d_t_g,
      (get_l_eq (m := m2) k2_g : get_l m2 (some g) = some q6), t_q6_p, u_q6_p, S3.1,
      (xr3 : m3._root = m._root), hr_p, hr_t,
      (get_l_eq (m := m3) ((S3.2.2.1 t d_t_g).trans k2_t) : get_l m3 (some t) = some none),
      (get_r_eq (m := m3) ((S3.2.2.1 t d_t_g).trans k2_t) : get_r m3 (some t) = some (some r)),
      d_r_p, d_p_r, S4.1,
      (get_parent_eq (m := m4) k4_t : get_parent m4 (some t) = some (some k)), d_k_p, d_p_k,
      (get_l_eq (m := m4) k4_k : get_l m4 (some k) = some (some t)), S5.1,
      (get_l_eq (m := m5) ((S5.2.2.1 p d_p_k).trans k4_p) : get_l m5 (some p) = some (some l)),
      (get_r_eq (m := m5) ((S5.2.2.1 p d_p_k).trans k4_p) : get_r m5 (some p) = some (some k)),
      (get_parent_eq (m := m5) ((S5.2.2.1 p d_p_k).trans k4_p) : get_parent m5 (some p) = some
        (some g)),
      (get_color_eq (m := m5) ((S5.2.2.1 p d_p_k).trans k4_p) : get_color m5 (some p) = some cP),
      (get_l_eq (m := m5) ((S5.2.2.1 t d_t_k).trans k4_t) : get_l m5 (some t) = some none), S6.1,
      (get_r_eq (m := m6) k6_t : get_r m6 (some t) = some (some r)), S7.1,
      (get_parent_eq (m := m7) ((S7.2.2.1 t d_t_p).trans k6_t) : get_parent m7 (some t) = some
        (some k)),
      S8.1, S9.1, S10.1, S11.1, (get_color_eq (m := m11) w11 : get_color m11 (some t) = some ct),
      S12.1, S13.1, bind_eq_ub, pure_eq_some, ub_bind_some, ne_eq, Option.some.injEq,
      not_false_eq_true, not_true_eq_false, and_self, and_true, true_and, and_false, false_and,
      if_true, if_false, ite_true, ite_false, reduceCtorEq, reduceIte, ite_not, not_not,
      Bool.not_eq_true, decide_eq_true_eq, decide_eq_false_iff_not, decide_True, decide_False,
      Bool.false_eq_true, eq_self_iff_true, Option.isSome_some, Option.isSome_none]
  have h_l : ∀ b, b ∉ [l, k, g, r, p, t] → b ≠ l := fun b hb e => hb (e ▸ List.Mem.head _)
  have h_k : ∀ b, b ∉ [l, k, g, r, p, t] → b ≠ k := fun b hb e => hb (e ▸ List.Mem.tail _
    (List.Mem.head _))
  have h_g : ∀ b, b ∉ [l, k, g, r, p, t] → b ≠ g := fun b hb e => hb (e ▸ List.Mem.tail _
    (List.Mem.tail _ (List.Mem.head _)))
  have h_r : ∀ b, b ∉ [l, k, g, r, p, t] → b ≠ r := fun b hb e => hb (e ▸ List.Mem.tail _
    (List.Mem.tail _ (List.Mem.tail _ (List.Mem.head _))))
  have h_p : ∀ b, b ∉ [l, k, g, r, p, t] → b ≠ p := fun b hb e => hb (e ▸ List.Mem.tail _
    (List.Mem.tail _ (List.Mem.tail _ (List.Mem.tail _ (List.Mem.head _)))))
  have h_t : ∀ b, b ∉ [l, k, g, r, p, t] → b ≠ t := fun b hb e => hb (e ▸ List.Mem.tail _
    (List.Mem.tail _ (List.Mem.tail _ (List.Mem.tail _ (List.Mem.tail _ (List.Mem.head _))))))
  ⟨m13, hop, w13, ((S13.2.2.1 r d_r_t).trans k12_r), k13_k, ((S13.2.2.1 p d_p_t).trans w12), k13_l,
    k13_g, (fun b hb => ((S13.2.2.1 b (h_t b hb)).trans ((S12.2.2.1 b (h_p b hb)).trans ((S11.2.2.1
    b (h_t b hb)).trans ((S10.2.2.1 b (h_t b hb)).trans ((S9.2.2.1 b (h_t b hb)).trans ((S8.2.2.1 b
    (h_p b hb)).trans ((S7.2.2.1 b (h_p b hb)).trans ((S6.2.2.1 b (h_p b hb)).trans ((S5.2.2.1 b
    (h_k b hb)).trans ((S4.2.2.1 b (h_r b hb)).trans ((S3.2.2.1 b (h_g b hb)).trans ((S2.2.2.1 b
    (h_k b hb)).trans (S1.2.2.1 b (h_l b hb))))))))))))))), (S13.2.2.2.2.1.trans xr12),
    (S13.2.2.2.1.trans (S12.2.2.2.1.trans (S11.2.2.2.1.trans (S10.2.2.2.1.trans (S9.2.2.2.1.trans
    (S8.2.2.2.1.trans (S7.2.2.2.1.trans (S6.2.2.2.1.trans (S5.2.2.2.1.trans (S4.2.2.2.1.trans
    (S3.2.2.2.1.trans (S2.2.2.2.1.trans S1.2.2.2.1)))))))))))), (S13.2.2.2.2.2.1.trans
    (S12.2.2.2.2.2.1.trans (S11.2.2.2.2.2.1.trans (S10.2.2.2.2.2.1.trans (S9.2.2.2.2.2.1.trans
    (S8.2.2.2.2.2.1.trans (S7.2.2.2.2.2.1.trans (S6.2.2.2.2.2.1.trans (S5.2.2.2.2.2.1.trans
    (S4.2.2.2.2.2.1.trans (S3.2.2.2.2.2.1.trans (S2.2.2.2.2.2.1.trans S1.2.2.2.2.2.1)))))))))))),
    (S13.2.2.2.2.2.2.trans (S12.2.2.2.2.2.2.trans (S11.2.2.2.2.2.2.trans (S10.2.2.2.2.2.2.trans
    (S9.2.2.2.2.2.2.trans (S8.2.2.2.2.2.2.trans (S7.2.2.2.2.2.2.trans (S6.2.2.2.2.2.2.trans
    (S5.2.2.2.2.2.2.trans (S4.2.2.2.2.2.2.trans (S3.2.2.2.2.2.2.trans (S2.2.2.2.2.2.2.trans
    S1.2.2.2.2.2.2))))))))))))⟩

/-- Member `_swap_nodes` of a node and the left child of its right child. -/
theorem swap_far1_succ_R_node
    {m : map K V} {t r k p l g : Nat} {ct cr ck cP cl cg : color_type}
    {vt vr vk vP vl vg : Option (K × V)} {rl rr sk ll lr sg : tree K V} {q : List (frame K V)}
    (h : Rep m (fill ((.L k ck vk sk) :: (.R p cP vP (.node l cl vl ll lr)) :: (.R g cg vg sg) :: q)
      (.node t ct vt .nil (.node r cr vr rl rr)))) :
    ∃ m2, map._swap_nodes m (some p) (some t) = some m2 ∧
      Rep m2 (fill ((.L k ck vk sk) :: (.R t cP vt (.node l cl vl ll lr)) :: (.R g cg vg sg) :: q)
        (.node p ct vP .nil (.node r cr vr rl rr))) ∧ SameAux m m2 :=
  have hs := shaped_fill.1 h.shaped
  have c_t : m.mem t = some { color := ct, val := vt, l := none, r := some r, parent := some k } :=
    hs.2.1
  have c_r : m.mem r = some { color := cr, val := vr, l := rl.top, r := rr.top, parent := some t }
    := hs.2.2.2.1
  have c_k : m.mem k = some { color := ck, val := vk, l := some t, r := sk.top, parent := some p }
    := hs.1.1
  have c_p : m.mem p = some { color := cP, val := vP, l := some l, r := some k, parent := some g }
    := hs.1.2.2.1
  have c_l : m.mem l = some { color := cl, val := vl, l := ll.top, r := lr.top, parent := some p }
    := hs.1.2.2.2.1.1
  have c_g : m.mem g = some { color := cg, val := vg, l := sg.top, r := some p, parent := ptop q }
    := hs.1.2.2.2.2.1
  have hB : (List.flatten [(pbefore q).map Prod.fst, sg.addrs, [g], ll.addrs, [l], lr.addrs, [p],
    [t], rl.addrs, [r], rr.addrs, [k], sk.addrs, (pafter q).map Prod.fst]).Nodup := by
    have e : (fill ((.L k ck vk sk) :: (.R p cP vP (.node l cl vl ll lr)) :: (.R g cg vg sg) :: q)
      (.node t ct vt .nil (.node r cr vr rl rr))).addrs =
        List.flatten [(pbefore q).map Prod.fst, sg.addrs, [g], ll.addrs, [l], lr.addrs, [p], [t],
          rl.addrs, [r], rr.addrs, [k], sk.addrs, (pafter q).map Prod.fst] := by
      rw [fill_addrs]
      simp [pbefore, pafter, pbefore_append, pafter_append, tree.addrs]
    exact e ▸ h.nodup
  have hr_p : some p ≠ m._root := by
    have h0 := h
    simp only [fill_L, fill_R, fill_append] at h0
    exact Rep.ne_root (f := (.R g cg vg sg)) (q := q) h0 (by simp [mem_fill_addrs])
  have hr_t : some t ≠ m._root := by
    have h0 := h
    simp only [fill_L, fill_R, fill_append] at h0
    exact Rep.ne_root (f := (.R g cg vg sg)) (q := q) h0 (by simp [mem_fill_addrs])
  Exists.elim (swap_far1_succ_R_node_cells c_t c_r c_k c_p c_l c_g (blocks_ne_at hB 4 7 rfl rfl
    rfl) (blocks_ne_at hB 7 4 rfl rfl rfl) (blocks_ne_at hB 6 4 rfl rfl rfl) (blocks_ne_at hB 11 7
    rfl rfl rfl) (blocks_ne_at hB 7 11 rfl rfl rfl) (blocks_ne_at hB 11 4 rfl rfl rfl)
    (blocks_ne_at hB 6 11 rfl rfl rfl) (blocks_ne_at hB 2 7 rfl rfl rfl) (blocks_ne_at hB 7 2 rfl
    rfl rfl) (blocks_ne_at hB 2 4 rfl rfl rfl) (blocks_ne_at hB 2 11 rfl rfl rfl) (blocks_ne_at hB
    9 6 rfl rfl rfl) (blocks_ne_at hB 6 9 rfl rfl rfl) (blocks_ne_at hB 9 4 rfl rfl rfl)
    (blocks_ne_at hB 9 11 rfl rfl rfl) (blocks_ne_at hB 9 2 rfl rfl rfl) (blocks_ne_at hB 7 9 rfl
    rfl rfl) (blocks_ne_at hB 11 6 rfl rfl rfl) (blocks_ne_at hB 11 2 rfl rfl rfl) (blocks_ne_at hB
    11 9 rfl rfl rfl) (blocks_ne_at hB 6 2 rfl rfl rfl) (blocks_ne_at hB 7 6 rfl rfl rfl)
    (blocks_ne_at hB 6 7 rfl rfl rfl) (blocks_ne_at hB 9 7 rfl rfl rfl) (blocks_ne_at hB 4 11 rfl
    rfl rfl) (blocks_ne_at hB 4 2 rfl rfl rfl) (blocks_ne_at hB 4 9 rfl rfl rfl) (blocks_ne_at hB 4
    6 rfl rfl rfl) (blocks_ne_at hB 2 9 rfl rfl rfl) (blocks_ne_at hB 2 6 rfl rfl rfl)
    (tree.top_ne_of_not_mem (blocks_not_mem_at hB 6 1 rfl rfl rfl)) (tree.ne_top_of_not_mem
    (blocks_not_mem_at hB 6 1 rfl rfl rfl)) hr_p hr_t) fun m2 H =>
  have fr := H.2.2.2.2.2.2.2.1
  have a_rl : ∀ b ∈ rl.addrs, m2.mem b = m.mem b :=
    region_agree hB [4, 11, 2, 9, 6, 7] [l, k, g, r, p, t] 8 rfl rfl rfl fr
  have a_rr : ∀ b ∈ rr.addrs, m2.mem b = m.mem b :=
    region_agree hB [4, 11, 2, 9, 6, 7] [l, k, g, r, p, t] 10 rfl rfl rfl fr
  have a_sk : ∀ b ∈ sk.addrs, m2.mem b = m.mem b :=
    region_agree hB [4, 11, 2, 9, 6, 7] [l, k, g, r, p, t] 12 rfl rfl rfl fr
  have a_ll : ∀ b ∈ ll.addrs, m2.mem b = m.mem b :=
    region_agree hB [4, 11, 2, 9, 6, 7] [l, k, g, r, p, t] 3 rfl rfl rfl fr
  have a_lr : ∀ b ∈ lr.addrs, m2.mem b = m.mem b :=
    region_agree hB [4, 11, 2, 9, 6, 7] [l, k, g, r, p, t] 5 rfl rfl rfl fr
  have a_sg : ∀ b ∈ sg.addrs, m2.mem b = m.mem b :=
    region_agree hB [4, 11, 2, 9, 6, 7] [l, k, g, r, p, t] 1 rfl rfl rfl fr
  have a_q : ∀ b ∈ paddrs q, m2.mem b = m.mem b :=
    paddrs_agree (region_agree hB [4, 11, 2, 9, 6, 7] [l, k, g, r, p, t] 0 rfl rfl rfl fr)
      (region_agree hB [4, 11, 2, 9, 6, 7] [l, k, g, r, p, t] 13 rfl rfl rfl fr)
  have hroot : m2._root = (fill ((.L k ck vk sk) :: (.R t cP vt (.node l cl vl ll lr)) :: (.R g cg
    vg sg) :: q) (.node p ct vP .nil (.node r cr vr rl rr))).top := by
    rw [H.2.2.2.2.2.2.2.2.1]
    refine h.root.trans ?_
    simp only [fill_L, fill_R, fill_append]
    exact fill_top_congr rfl
  have hpath : ShapedPath m2.mem ((.L k ck vk sk) :: (.R t cP vt (.node l cl vl ll lr)) :: (.R g cg
    vg sg) :: q) (some p) :=
    ⟨H.2.2.2.1, Shaped.agree hs.1.2.1 a_sk, ⟨H.2.1, ⟨H.2.2.2.2.2.1, Shaped.agree hs.1.2.2.2.1.2.1
      a_ll, Shaped.agree hs.1.2.2.2.1.2.2 a_lr⟩, ⟨H.2.2.2.2.2.2.1, Shaped.agree hs.1.2.2.2.2.2.1
      a_sg, ShapedPath.agree_path hs.1.2.2.2.2.2.2 a_q⟩⟩⟩
  have htree : Shaped m2.mem (some k) (.node p ct vP .nil (.node r cr vr rl rr)) :=
    ⟨H.2.2.2.2.1, trivial, ⟨H.2.2.1, Shaped.agree hs.2.2.2.2.1 a_rl, Shaped.agree hs.2.2.2.2.2
      a_rr⟩⟩
  ⟨m2, H.1, h.of_perm (perm_swap_far1_succ _) H.2.2.2.2.2.2.2.2.2.1 hroot (shaped_fill.2 ⟨hpath,
    htree⟩), ⟨H.2.2.2.2.2.2.2.2.2.1, H.2.2.2.2.2.2.2.2.2.2.1, H.2.2.2.2.2.2.2.2.2.2.2⟩⟩

/-- The cells after `_swap_nodes`, case `far2_succ_R_node`. -/
theorem swap_far2_succ_R_node_cells {m : map K V} {t r f k p l g : Nat}
    {ct cr cf ck cP cl cg : color_type} {vt vr vf vk vP vl vg : Option (K × V)}
    {q1 q2 q3 q4 q5 q6 q7 q8 q9 q10 : ptr}
    (c_t : m.mem t = some { color := ct, val := vt, l := none, r := some r, parent := some f })
    (c_r : m.mem r = some { color := cr, val := vr, l := q1, r := q2, parent := some t })
    (c_f : m.mem f = some { color := cf, val := vf, l := some t, r := q3, parent := q4 })
    (c_k : m.mem k = some { color := ck, val := vk, l := q5, r := q6, parent := some p })
    (c_p : m.mem p = some { color := cP, val := vP, l := some l, r := some k, parent := some g })
    (c_l : m.mem l = some { color := cl, val := vl, l := q7, r := q8, parent := some p })
    (c_g : m.mem g = some { color := cg, val := vg, l := q9, r := some p, parent := q10 })
    (d_l_t : l ≠ t)
    (d_t_l : t ≠ l)
    (d_p_l : p ≠ l)
    (d_k_t : k ≠ t)
    (d_t_k : t ≠ k)
    (d_k_l : k ≠ l)
    (d_p_k : p ≠ k)
    (d_g_t : g ≠ t)
    (d_t_g : t ≠ g)
    (d_g_l : g ≠ l)
    (d_g_k : g ≠ k)
    (d_r_p : r ≠ p)
    (d_p_r : p ≠ r)
    (d_r_l : r ≠ l)
    (d_r_k : r ≠ k)
    (d_r_g : r ≠ g)
    (d_t_r : t ≠ r)
    (d_f_p : f ≠ p)
    (d_p_f : p ≠ f)
    (d_f_l : f ≠ l)
    (d_f_k : f ≠ k)
    (d_f_g : f ≠ g)
    (d_f_r : f ≠ r)
    (d_p_g : p ≠ g)
    (d_t_f : t ≠ f)
    (d_t_p : t ≠ p)
    (d_p_t : p ≠ t)
    (d_r_f : r ≠ f)
    (d_r_t : r ≠ t)
    (d_f_t : f ≠ t)
    (d_k_g : k ≠ g)
    (d_k_r : k ≠ r)
    (d_k_f : k ≠ f)
    (d_k_p : k ≠ p)
    (d_l_k : l ≠ k)
    (d_l_g : l ≠ g)
    (d_l_r : l ≠ r)
    (d_l_f : l ≠ f)
    (d_l_p : l ≠ p)
    (d_g_r : g ≠ r)
    (d_g_f : g ≠ f)
    (d_g_p : g ≠ p)
    (t_q9_p : q9 ≠ some p)
    (u_q9_p : some p ≠ q9)
    (hr_p : some p ≠ m._root)
    (hr_t : some t ≠ m._root) :
    ∃ m2, map._swap_nodes m (some p) (some t) = some m2 ∧
      m2.mem t = some { color := cP, val := vt, l := some l, r := some k, parent := some g } ∧
      m2.mem r = some { color := cr, val := vr, l := q1, r := q2, parent := some p } ∧
      m2.mem f = some { color := cf, val := vf, l := some p, r := q3, parent := q4 } ∧
      m2.mem k = some { color := ck, val := vk, l := q5, r := q6, parent := some t } ∧
      m2.mem p = some { color := ct, val := vP, l := none, r := some r, parent := some f } ∧
      m2.mem l = some { color := cl, val := vl, l := q7, r := q8, parent := some t } ∧
      m2.mem g = some { color := cg, val := vg, l := q9, r := some t, parent := q10 } ∧
      (∀ b, b ∉ [l, k, g, r, f, p, t] → m2.mem b = m.mem b) ∧
      m2._root = m._root ∧
      m2.brk = m.brk ∧
      m2._sz = m._sz ∧
      m2._cmp_k = m._cmp_k :=
  have hr0 : m._root = m._root := rfl
  Exists.elim (set_parent_step (m := m) c_l (some t)) fun m1 S1 =>
  have w1 : m1.mem l = some { color := cl, val := vl, l := q7, r := q8, parent := some t } := S1.2.1
  Exists.elim (set_parent_step (m := m1) ((S1.2.2.1 k d_k_l).trans c_k) (some t)) fun m2 S2 =>
  have w2 : m2.mem k = some { color := ck, val := vk, l := q5, r := q6, parent := some t } := S2.2.1
  have k2_p := (S2.2.2.1 p d_p_k).trans ((S1.2.2.1 p d_p_l).trans c_p)
  have k2_g := (S2.2.2.1 g d_g_k).trans ((S1.2.2.1 g d_g_l).trans c_g)
  Exists.elim (set_r_step (m := m2) k2_g (some t)) fun m3 S3 =>
  have w3 : m3.mem g = some { color := cg, val := vg, l := q9, r := some t, parent := q10 } :=
    S3.2.1
  have xr3 : m3._root = m._root := S3.2.2.2.2.1.trans (S2.2.2.2.2.1.trans (S1.2.2.2.2.1.trans hr0))
  have k2_t := (S2.2.2.1 t d_t_k).trans ((S1.2.2.1 t d_t_l).trans c_t)
  have k2_r := (S2.2.2.1 r d_r_k).trans ((S1.2.2.1 r d_r_l).trans c_r)
  Exists.elim (set_parent_step (m := m3) ((S3.2.2.1 r d_r_g).trans k2_r) (some p)) fun m4 S4 =>
  have w4 : m4.mem r = some { color := cr, val := vr, l := q1, r := q2, parent := some p } := S4.2.1
  have k4_t := (S4.2.2.1 t d_t_r).trans ((S3.2.2.1 t d_t_g).trans k2_t)
  have k2_f := (S2.2.2.1 f d_f_k).trans ((S1.2.2.1 f d_f_l).trans c_f)
  have k4_f := (S4.2.2.1 f d_f_r).trans ((S3.2.2.1 f d_f_g).trans k2_f)
  Exists.elim (set_l_step (m := m4) k4_f (some p)) fun m5 S5 =>
  have w5 : m5.mem f = some { color := cf, val := vf, l := some p, r := q3, parent := q4 } := S5.2.1
  have k4_p := (S4.2.2.1 p d_p_r).trans ((S3.2.2.1 p d_p_g).trans k2_p)
  Exists.elim (set_l_step (m := m5) ((S5.2.2.1 p d_p_f).trans k4_p) none) fun m6 S6 =>
  have w6 : m6.mem p = some { color := cP, val := vP, l := none, r := some k, parent := some g } :=
    S6.2.1
  have xr6 : m6._root = m._root := S6.2.2.2.2.1.trans (S5.2.2.2.2.1.trans (S4.2.2.2.2.1.trans xr3))
  have k6_t := (S6.2.2.1 t d_t_p).trans ((S5.2.2.1 t d_t_f).trans k4_t)
  Exists.elim (set_r_step (m := m6) w6 (some r)) fun m7 S7 =>
  have w7 : m7.mem p = some { color := cP, val := vP, l := none, r := some r, parent := some g } :=
    S7.2.1
  Exists.elim (set_parent_step (m := m7) w7 (some f)) fun m8 S8 =>
  have w8 : m8.mem p = some { color := cP, val := vP, l := none, r := some r, parent := some f } :=
    S8.2.1
  have k8_t := (S8.2.2.1 t d_t_p).trans ((S7.2.2.1 t d_t_p).trans k6_t)
  Exists.elim (set_l_step (m := m8) k8_t (some l)) fun m9 S9 =>
  have w9 : m9.mem t = some { color := ct, val := vt, l := some l, r := some r, parent := some f }
    := S9.2.1
  have xr9 : m9._root = m._root := S9.2.2.2.2.1.trans (S8.2.2.2.2.1.trans (S7.2.2.2.2.1.trans xr6))
  Exists.elim (set_r_step (m := m9) w9 (some k)) fun m10 S10 =>
  have w10 : m10.mem t = some { color := ct, val := vt, l := some l, r := some k, parent := some f
    } := S10.2.1
  Exists.elim (set_parent_step (m := m10) w10 (some g)) fun m11 S11 =>
  have w11 : m11.mem t = some { color := ct, val := vt, l := some l, r := some k, parent := some g
    } := S11.2.1
  have k10_p := (S10.2.2.1 p d_p_t).trans ((S9.2.2.1 p d_p_t).trans w8)
  Exists.elim (set_color_step (m := m11) ((S11.2.2.1 p d_p_t).trans k10_p) ct) fun m12 S12 =>
  have w12 : m12.mem p = some { color := ct, val := vP, l := none, r := some r, parent := some f }
    := S12.2.1
  have xr12 : m12._root = m._root := S12.2.2.2.2.1.trans (S11.2.2.2.2.1.trans (S10.2.2.2.2.1.trans
    xr9))
  Exists.elim (set_color_step (m := m12) ((S12.2.2.1 t d_t_p).trans w11) cP) fun m13 S13 =>
  have w13 : m13.mem t = some { color := cP, val := vt, l := some l, r := some k, parent := some g
    } := S13.2.1
  have k6_r := (S6.2.2.1 r d_r_p).trans ((S5.2.2.1 r d_r_f).trans w4)
  have k8_r := (S8.2.2.1 r d_r_p).trans ((S7.2.2.1 r d_r_p).trans k6_r)
  have k10_r := (S10.2.2.1 r d_r_t).trans ((S9.2.2.1 r d_r_t).trans k8_r)
  have k12_r := (S12.2.2.1 r d_r_p).trans ((S11.2.2.1 r d_r_t).trans k10_r)
  have k7_f := (S7.2.2.1 f d_f_p).trans ((S6.2.2.1 f d_f_p).trans w5)
  have k9_f := (S9.2.2.1 f d_f_t).trans ((S8.2.2.1 f d_f_p).trans k7_f)
  have k11_f := (S11.2.2.1 f d_f_t).trans ((S10.2.2.1 f d_f_t).trans k9_f)
  have k13_f := (S13.2.2.1 f d_f_t).trans ((S12.2.2.1 f d_f_p).trans k11_f)
  have k4_k := (S4.2.2.1 k d_k_r).trans ((S3.2.2.1 k d_k_g).trans w2)
  have k6_k := (S6.2.2.1 k d_k_p).trans ((S5.2.2.1 k d_k_f).trans k4_k)
  have k8_k := (S8.2.2.1 k d_k_p).trans ((S7.2.2.1 k d_k_p).trans k6_k)
  have k10_k := (S10.2.2.1 k d_k_t).trans ((S9.2.2.1 k d_k_t).trans k8_k)
  have k12_k := (S12.2.2.1 k d_k_p).trans ((S11.2.2.1 k d_k_t).trans k10_k)
  have k3_l := (S3.2.2.1 l d_l_g).trans ((S2.2.2.1 l d_l_k).trans w1)
  have k5_l := (S5.2.2.1 l d_l_f).trans ((S4.2.2.1 l d_l_r).trans k3_l)
  have k7_l := (S7.2.2.1 l d_l_p).trans ((S6.2.2.1 l d_l_p).trans k5_l)
  have k9_l := (S9.2.2.1 l d_l_t).trans ((S8.2.2.1 l d_l_p).trans k7_l)
  have k11_l := (S11.2.2.1 l d_l_t).trans ((S10.2.2.1 l d_l_t).trans k9_l)
  have k13_l := (S13.2.2.1 l d_l_t).trans ((S12.2.2.1 l d_l_p).trans k11_l)
  have k5_g := (S5.2.2.1 g d_g_f).trans ((S4.2.2.1 g d_g_r).trans w3)
  have k7_g := (S7.2.2.1 g d_g_p).trans ((S6.2.2.1 g d_g_p).trans k5_g)
  have k9_g := (S9.2.2.1 g d_g_t).trans ((S8.2.2.1 g d_g_p).trans k7_g)
  have k11_g := (S11.2.2.1 g d_g_t).trans ((S10.2.2.1 g d_g_t).trans k9_g)
  have k13_g := (S13.2.2.1 g d_g_t).trans ((S12.2.2.1 g d_g_p).trans k11_g)
  have hop : map._swap_nodes m (some p) (some t) = some m13 := by
    simp only [map._swap_nodes, map._swap_set_parent, map._swap_set_child,
      (get_l_eq (m := m) c_p : get_l m (some p) = some (some l)), d_l_t, d_t_l, S1.1,
      (get_r_eq (m := m1) ((S1.2.2.1 p d_p_l).trans c_p) : get_r m1 (some p) = some (some k)),
      d_k_t, d_t_k, S2.1,
      (get_parent_eq (m := m2) k2_p : get_parent m2 (some p) = some (some g)), d_g_t, d_t_g,
      (get_l_eq (m := m2) k2_g : get_l m2 (some g) = some q9), t_q9_p, u_q9_p, S3.1,
      (xr3 : m3._root = m._root), hr_p, hr_t,
      (get_l_eq (m := m3) ((S3.2.2.1 t d_t_g).trans k2_t) : get_l m3 (some t) = some none),
      (get_r_eq (m := m3) ((S3.2.2.1 t d_t_g).trans k2_t) : get_r m3 (some t) = some (some r)),
      d_r_p, d_p_r, S4.1,
      (get_parent_eq (m := m4) k4_t : get_parent m4 (some t) = some (some f)), d_f_p, d_p_f,
      (get_l_eq (m := m4) k4_f : get_l m4 (some f) = some (some t)), S5.1,
      (get_l_eq (m := m5) ((S5.2.2.1 p d_p_f).trans k4_p) : get_l m5 (some p) = some (some l)),
      (get_r_eq (m := m5) ((S5.2.2.1 p d_p_f).trans k4_p) : get_r m5 (some p) = some (some k)),
      (get_parent_eq (m := m5) ((S5.2.2.1 p d_p_f).trans k4_p) : get_parent m5 (some p) = some
        (some g)),
      (get_color_eq (m := m5) ((S5.2.2.1 p d_p_f).trans k4_p) : get_color m5 (some p) = some cP),
      (get_l_eq (m := m5) ((S5.2.2.1 t d_t_f).trans k4_t) : get_l m5 (some t) = some none), S6.1,
      (get_r_eq (m := m6) k6_t : get_r m6 (some t) = some (some r)), S7.1,
      (get_parent_eq (m := m7) ((S7.2.2.1 t d_t_p).trans k6_t) : get_parent m7 (some t) = some
        (some f)),
      S8.1, S9.1, S10.1, S11.1, (get_color_eq (m := m11) w11 : get_color m11 (some t) = some ct),
      S12.1, S13.1, bind_eq_ub, pure_eq_some, ub_bind_some, ne_eq, Option.some.injEq,
      not_false_eq_true, not_true_eq_false, and_self, and_true, true_and, and_false, false_and,
      if_true, if_false, ite_true, ite_false, reduceCtorEq, reduceIte, ite_not, not_not,
      Bool.not_eq_true, decide_eq_true_eq, decide_eq_false_iff_not, decide_True, decide_False,
      Bool.false_eq_true, eq_self_iff_true, Option.isSome_some, Option.isSome_none]
  have h_l : ∀ b, b ∉ [l, k, g, r, f, p, t] → b ≠ l := fun b hb e => hb (e ▸ List.Mem.head _)
  have h_k : ∀ b, b ∉ [l, k, g, r, f, p, t] → b ≠ k := fun b hb e => hb (e ▸ List.Mem.tail _
    (List.Mem.head _))
  have h_g : ∀ b, b ∉ [l, k, g, r, f, p, t] → b ≠ g := fun b hb e => hb (e ▸ List.Mem.tail _
    (List.Mem.tail _ (List.Mem.head _)))
  have h_r : ∀ b, b ∉ [l, k, g, r, f, p, t] → b ≠ r := fun b hb e => hb (e ▸ List.Mem.tail _
    (List.Mem.tail _ (List.Mem.tail _ (List.Mem.head _))))
  have h_f : ∀ b, b ∉ [l, k, g, r, f, p, t] → b ≠ f := fun b hb e => hb (e ▸ List.Mem.tail _
    (List.Mem.tail _ (List.Mem.tail _ (List.Mem.tail _ (List.Mem.head _)))))
  have h_p : ∀ b, b ∉ [l, k, g, r, f, p, t] → b ≠ p := fun b hb e => hb (e ▸ List.Mem.tail _
    (List.Mem.tail _ (List.Mem.tail _ (List.Mem.tail _ (List.Mem.tail _ (List.Mem.head _))))))
  have h_t : ∀ b, b ∉ [l, k, g, r, f, p, t] → b ≠ t := fun b hb e => hb (e ▸ List.Mem.tail _
    (List.Mem.tail _ (List.Mem.tail _ (List.Mem.tail _ (List.Mem.tail _ (List.Mem.tail _
    (List.Mem.head _)))))))
  ⟨m13, hop, w13, ((S13.2.2.1 r d_r_t).trans k12_r), k13_f, ((S13.2.2.1 k d_k_t).trans k12_k),
    ((S13.2.2.1 p d_p_t).trans w12), k13_l, k13_g, (fun b hb => ((S13.2.2.1 b (h_t b hb)).trans
    ((S12.2.2.1 b (h_p b hb)).trans ((S11.2.2.1 b (h_t b hb)).trans ((S10.2.2.1 b (h_t b hb)).trans
    ((S9.2.2.1 b (h_t b hb)).trans ((S8.2.2.1 b (h_p b hb)).trans ((S7.2.2.1 b (h_p b hb)).trans
    ((S6.2.2.1 b (h_p b hb)).trans ((S5.2.2.1 b (h_f b hb)).trans ((S4.2.2.1 b (h_r b hb)).trans
    ((S3.2.2.1 b (h_g b hb)).trans ((S2.2.2.1 b (h_k b hb)).trans (S1.2.2.1 b (h_l b
    hb))))))))))))))), (S13.2.2.2.2.1.trans xr12), (S13.2.2.2.1.trans (S12.2.2.2.1.trans
    (S11.2.2.2.1.trans (S10.2.2.2.1.trans (S9.2.2.2.1.trans (S8.2.2.2.1.trans (S7.2.2.2.1.trans
    (S6.2.2.2.1.trans (S5.2.2.2.1.trans (S4.2.2.2.1.trans (S3.2.2.2.1.trans (S2.2.2.2.1.trans
    S1.2.2.2.1)))))))))))), (S13.2.2.2.2.2.1.trans (S12.2.2.2.2.2.1.trans (S11.2.2.2.2.2.1.trans
    (S10.2.2.2.2.2.1.trans (S9.2.2.2.2.2.1.trans (S8.2.2.2.2.2.1.trans (S7.2.2.2.2.2.1.trans
    (S6.2.2.2.2.2.1.trans (S5.2.2.2.2.2.1.trans (S4.2.2.2.2.2.1.trans (S3.2.2.2.2.2.1.trans
    (S2.2.2.2.2.2.1.trans S1.2.2.2.2.2.1)))))))))))), (S13.2.2.2.2.2.2.trans (S12.2.2.2.2.2.2.trans
    (S11.2.2.2.2.2.2.trans (S10.2.2.2.2.2.2.trans (S9.2.2.2.2.2.2.trans (S8.2.2.2.2.2.2.trans
    (S7.2.2.2.2.2.2.trans (S6.2.2.2.2.2.2.trans (S5.2.2.2.2.2.2.trans (S4.2.2.2.2.2.2.trans
    (S3.2.2.2.2.2.2.trans (S2.2.2.2.2.2.2.trans S1.2.2.2.2.2.2))))))))))))⟩

/-- Member `_swap_nodes` of a node and a left descendant of its right child. -/
theorem swap_far2_succ_R_node
    {m : map K V} {t r f k p l g : Nat} {ct cr cf ck cP cl cg : color_type}
    {vt vr vf vk vP vl vg : Option (K × V)} {rl rr sf sk ll lr sg : tree K V}
    {rm q : List (frame K V)}
    (h : Rep m (fill ((.L f cf vf sf) :: (rm ++ (.L k ck vk sk) :: (.R p cP vP (.node l cl vl ll lr)) :: (.R g cg vg sg) :: q))
      (.node t ct vt .nil (.node r cr vr rl rr)))) :
    ∃ m2, map._swap_nodes m (some p) (some t) = some m2 ∧
      Rep m2 (fill ((.L f cf vf sf) :: (rm ++ (.L k ck vk sk) :: (.R t cP vt (.node l cl vl ll lr)) :: (.R g cg vg sg) :: q))
        (.node p ct vP .nil (.node r cr vr rl rr))) ∧ SameAux m m2 :=
  have hs := shaped_fill.1 h.shaped
  have c_t : m.mem t = some { color := ct, val := vt, l := none, r := some r, parent := some f } :=
    hs.2.1
  have c_r : m.mem r = some { color := cr, val := vr, l := rl.top, r := rr.top, parent := some t }
    := hs.2.2.2.1
  have c_f : m.mem f = some { color := cf, val := vf, l := some t, r := sf.top, parent := ptop ((rm
    ++ (.L k ck vk sk) :: (.R p cP vP (.node l cl vl ll lr)) :: (.R g cg vg sg) :: q)) } := hs.1.1
  have s_rm := hs.1.2.2
  Exists.elim (ShapedPath.drop s_rm) fun hh sp2 =>
  have c_k : m.mem k = some { color := ck, val := vk, l := hh, r := sk.top, parent := some p } :=
    sp2.1
  have c_p : m.mem p = some { color := cP, val := vP, l := some l, r := some k, parent := some g }
    := sp2.2.2.1
  have c_l : m.mem l = some { color := cl, val := vl, l := ll.top, r := lr.top, parent := some p }
    := sp2.2.2.2.1.1
  have c_g : m.mem g = some { color := cg, val := vg, l := sg.top, r := some p, parent := ptop q }
    := sp2.2.2.2.2.1
  have hB : (List.flatten [(pbefore q).map Prod.fst, sg.addrs, [g], ll.addrs, [l], lr.addrs, [p],
    (pbefore rm).map Prod.fst, [t], rl.addrs, [r], rr.addrs, [f], sf.addrs, (pafter rm).map
    Prod.fst, [k], sk.addrs, (pafter q).map Prod.fst]).Nodup := by
    have e : (fill ((.L f cf vf sf) :: (rm ++ (.L k ck vk sk) :: (.R p cP vP (.node l cl vl ll lr))
      :: (.R g cg vg sg) :: q)) (.node t ct vt .nil (.node r cr vr rl rr))).addrs =
        List.flatten [(pbefore q).map Prod.fst, sg.addrs, [g], ll.addrs, [l], lr.addrs, [p],
          (pbefore rm).map Prod.fst, [t], rl.addrs, [r], rr.addrs, [f], sf.addrs, (pafter rm).map
          Prod.fst, [k], sk.addrs, (pafter q).map Prod.fst] := by
      rw [fill_addrs]
      simp [pbefore, pafter, pbefore_append, pafter_append, tree.addrs]
    exact e ▸ h.nodup
  have hr_p : some p ≠ m._root := by
    have h0 := h
    simp only [fill_L, fill_R, fill_append] at h0
    exact Rep.ne_root (f := (.R g cg vg sg)) (q := q) h0 (by simp [mem_fill_addrs])
  have hr_t : some t ≠ m._root := by
    have h0 := h
    simp only [fill_L, fill_R, fill_append] at h0
    exact Rep.ne_root (f := (.R g cg vg sg)) (q := q) h0 (by simp [mem_fill_addrs])
  Exists.elim (swap_far2_succ_R_node_cells c_t c_r c_f c_k c_p c_l c_g (blocks_ne_at hB 4 8 rfl rfl
    rfl) (blocks_ne_at hB 8 4 rfl rfl rfl) (blocks_ne_at hB 6 4 rfl rfl rfl) (blocks_ne_at hB 15 8
    rfl rfl rfl) (blocks_ne_at hB 8 15 rfl rfl rfl) (blocks_ne_at hB 15 4 rfl rfl rfl)
    (blocks_ne_at hB 6 15 rfl rfl rfl) (blocks_ne_at hB 2 8 rfl rfl rfl) (blocks_ne_at hB 8 2 rfl
    rfl rfl) (blocks_ne_at hB 2 4 rfl rfl rfl) (blocks_ne_at hB 2 15 rfl rfl rfl) (blocks_ne_at hB
    10 6 rfl rfl rfl) (blocks_ne_at hB 6 10 rfl rfl rfl) (blocks_ne_at hB 10 4 rfl rfl rfl)
    (blocks_ne_at hB 10 15 rfl rfl rfl) (blocks_ne_at hB 10 2 rfl rfl rfl) (blocks_ne_at hB 8 10
    rfl rfl rfl) (blocks_ne_at hB 12 6 rfl rfl rfl) (blocks_ne_at hB 6 12 rfl rfl rfl)
    (blocks_ne_at hB 12 4 rfl rfl rfl) (blocks_ne_at hB 12 15 rfl rfl rfl) (blocks_ne_at hB 12 2
    rfl rfl rfl) (blocks_ne_at hB 12 10 rfl rfl rfl) (blocks_ne_at hB 6 2 rfl rfl rfl)
    (blocks_ne_at hB 8 12 rfl rfl rfl) (blocks_ne_at hB 8 6 rfl rfl rfl) (blocks_ne_at hB 6 8 rfl
    rfl rfl) (blocks_ne_at hB 10 12 rfl rfl rfl) (blocks_ne_at hB 10 8 rfl rfl rfl) (blocks_ne_at
    hB 12 8 rfl rfl rfl) (blocks_ne_at hB 15 2 rfl rfl rfl) (blocks_ne_at hB 15 10 rfl rfl rfl)
    (blocks_ne_at hB 15 12 rfl rfl rfl) (blocks_ne_at hB 15 6 rfl rfl rfl) (blocks_ne_at hB 4 15
    rfl rfl rfl) (blocks_ne_at hB 4 2 rfl rfl rfl) (blocks_ne_at hB 4 10 rfl rfl rfl) (blocks_ne_at
    hB 4 12 rfl rfl rfl) (blocks_ne_at hB 4 6 rfl rfl rfl) (blocks_ne_at hB 2 10 rfl rfl rfl)
    (blocks_ne_at hB 2 12 rfl rfl rfl) (blocks_ne_at hB 2 6 rfl rfl rfl) (tree.top_ne_of_not_mem
    (blocks_not_mem_at hB 6 1 rfl rfl rfl)) (tree.ne_top_of_not_mem (blocks_not_mem_at hB 6 1 rfl
    rfl rfl)) hr_p hr_t) fun m2 H =>
  have fr := H.2.2.2.2.2.2.2.2.1
  have a_rl : ∀ b ∈ rl.addrs, m2.mem b = m.mem b :=
    region_agree hB [4, 15, 2, 10, 12, 6, 8] [l, k, g, r, f, p, t] 9 rfl rfl rfl fr
  have a_rr : ∀ b ∈ rr.addrs, m2.mem b = m.mem b :=
    region_agree hB [4, 15, 2, 10, 12, 6, 8] [l, k, g, r, f, p, t] 11 rfl rfl rfl fr
  have a_sf : ∀ b ∈ sf.addrs, m2.mem b = m.mem b :=
    region_agree hB [4, 15, 2, 10, 12, 6, 8] [l, k, g, r, f, p, t] 13 rfl rfl rfl fr
  have a_rm : ∀ b ∈ paddrs rm, m2.mem b = m.mem b :=
    paddrs_agree (region_agree hB [4, 15, 2, 10, 12, 6, 8] [l, k, g, r, f, p, t] 7 rfl rfl rfl fr)
      (region_agree hB [4, 15, 2, 10, 12, 6, 8] [l, k, g, r, f, p, t] 14 rfl rfl rfl fr)
  have a_sk : ∀ b ∈ sk.addrs, m2.mem b = m.mem b :=
    region_agree hB [4, 15, 2, 10, 12, 6, 8] [l, k, g, r, f, p, t] 16 rfl rfl rfl fr
  have a_ll : ∀ b ∈ ll.addrs, m2.mem b = m.mem b :=
    region_agree hB [4, 15, 2, 10, 12, 6, 8] [l, k, g, r, f, p, t] 3 rfl rfl rfl fr
  have a_lr : ∀ b ∈ lr.addrs, m2.mem b = m.mem b :=
    region_agree hB [4, 15, 2, 10, 12, 6, 8] [l, k, g, r, f, p, t] 5 rfl rfl rfl fr
  have a_sg : ∀ b ∈ sg.addrs, m2.mem b = m.mem b :=
    region_agree hB [4, 15, 2, 10, 12, 6, 8] [l, k, g, r, f, p, t] 1 rfl rfl rfl fr
  have a_q : ∀ b ∈ paddrs q, m2.mem b = m.mem b :=
    paddrs_agree (region_agree hB [4, 15, 2, 10, 12, 6, 8] [l, k, g, r, f, p, t] 0 rfl rfl rfl fr)
      (region_agree hB [4, 15, 2, 10, 12, 6, 8] [l, k, g, r, f, p, t] 17 rfl rfl rfl fr)
  have ep_f : ptop ((rm ++ (.L k ck vk sk) :: (.R t cP vt (.node l cl vl ll lr)) :: (.R g cg vg sg)
    :: q)) = ptop ((rm ++ (.L k ck vk sk) :: (.R p cP vP (.node l cl vl ll lr)) :: (.R g cg vg sg)
    :: q)) :=
    ptop_append_cons rm _ _ rfl
  have hroot : m2._root = (fill ((.L f cf vf sf) :: (rm ++ (.L k ck vk sk) :: (.R t cP vt (.node l
    cl vl ll lr)) :: (.R g cg vg sg) :: q)) (.node p ct vP .nil (.node r cr vr rl rr))).top := by
    rw [H.2.2.2.2.2.2.2.2.2.1]
    refine h.root.trans ?_
    simp only [fill_L, fill_R, fill_append]
    exact fill_top_congr rfl
  have hpath : ShapedPath m2.mem ((.L f cf vf sf) :: (rm ++ (.L k ck vk sk) :: (.R t cP vt (.node l
    cl vl ll lr)) :: (.R g cg vg sg) :: q)) (some p) :=
    ⟨(by rw [ep_f]; exact H.2.2.2.1), Shaped.agree hs.1.2.1 a_sf, ShapedPath.splice_L s_rm a_rm c_k
      rfl (⟨H.2.2.2.2.1, Shaped.agree sp2.2.1 a_sk, ⟨H.2.1, ⟨H.2.2.2.2.2.2.1, Shaped.agree
      sp2.2.2.2.1.2.1 a_ll, Shaped.agree sp2.2.2.2.1.2.2 a_lr⟩, ⟨H.2.2.2.2.2.2.2.1, Shaped.agree
      sp2.2.2.2.2.2.1 a_sg, ShapedPath.agree_path sp2.2.2.2.2.2.2 a_q⟩⟩⟩)⟩
  have htree : Shaped m2.mem (some f) (.node p ct vP .nil (.node r cr vr rl rr)) :=
    ⟨H.2.2.2.2.2.1, trivial, ⟨H.2.2.1, Shaped.agree hs.2.2.2.2.1 a_rl, Shaped.agree hs.2.2.2.2.2
      a_rr⟩⟩
  ⟨m2, H.1, h.of_perm (perm_swap_far2_succ _) H.2.2.2.2.2.2.2.2.2.2.1 hroot (shaped_fill.2 ⟨hpath,
    htree⟩), ⟨H.2.2.2.2.2.2.2.2.2.2.1, H.2.2.2.2.2.2.2.2.2.2.2.1, H.2.2.2.2.2.2.2.2.2.2.2.2⟩⟩

/-- A path all of whose frames hang their subtree as a left child. -/
theorem AllL.cons_iff {f : frame K V} {rs : List (frame K V)} :
    AllL (f :: rs) ↔ (∃ a c v s, f = .L a c v s) ∧ AllL rs := by
  simp [AllL]

/-- Member `_swap_nodes` of a node with two children and its right child, which has no left
child: the two nodes exchange their places and colours. -/
theorem swap_adj_succ {m : map K V} {q : List (frame K V)} {p t l : Nat} {cP ct cl : color_type}
    {vP vt vl : Option (K × V)} {ll lr TR : tree K V}
    (h : Rep m (fill q (.node p cP vP (.node l cl vl ll lr) (.node t ct vt .nil TR)))) :
    ∃ m2, map._swap_nodes m (some p) (some t) = some m2 ∧
      Rep m2 (fill q (.node t cP vt (.node l cl vl ll lr) (.node p ct vP .nil TR))) ∧
      SameAux m m2 := by
  cases TR with
  | nil =>
    cases q with
    | nil => exact swap_adj_succ_root_nil h
    | cons f q =>
      cases f with
      | L g cg vg sg => exact swap_adj_succ_L_nil h
      | R g cg vg sg => exact swap_adj_succ_R_nil h
  | node r cr vr rl rr =>
    cases q with
    | nil => exact swap_adj_succ_root_node h
    | cons f q =>
      cases f with
      | L g cg vg sg => exact swap_adj_succ_L_node h
      | R g cg vg sg => exact swap_adj_succ_R_node h

/-- Member `_swap_nodes` of a node with two children and its left child, which has no right
child: the two nodes exchange their places and colours. -/
theorem swap_adj_pred {m : map K V} {q : List (frame K V)} {p t l : Nat} {cP ct cl : color_type}
    {vP vt vl : Option (K × V)} {ll lr TR : tree K V}
    (h : Rep m (fill q (.node p cP vP (.node t ct vt TR .nil) (.node l cl vl ll lr)))) :
    ∃ m2, map._swap_nodes m (some p) (some t) = some m2 ∧
      Rep m2 (fill q (.node t cP vt (.node p ct vP TR .nil) (.node l cl vl ll lr))) ∧
      SameAux m m2 := by
  cases TR with
  | nil =>
    cases q with
    | nil => exact swap_adj_pred_root_nil h
    | cons f q =>
      cases f with
      | L g cg vg sg => exact swap_adj_pred_L_nil h
      | R g cg vg sg => exact swap_adj_pred_R_nil h
  | node r cr vr rl rr =>
    cases q with
    | nil => exact swap_adj_pred_root_node h
    | cons f q =>
      cases f with
      | L g cg vg sg => exact swap_adj_pred_L_node h
      | R g cg vg sg => exact swap_adj_pred_R_node h

theorem swap_far1_succ {m : map K V} {q : List (frame K V)} {p t l k : Nat}
    {cP ct cl ck : color_type} {vP vt vl vk : Option (K × V)} {ll lr TR sk : tree K V}
    (h : Rep m (fill (.L k ck vk sk :: .R p cP vP (.node l cl vl ll lr) :: q)
      (.node t ct vt .nil TR))) :
    ∃ m2, map._swap_nodes m (some p) (some t) = some m2 ∧
      Rep m2 (fill (.L k ck vk sk :: .R t cP vt (.node l cl vl ll lr) :: q)
        (.node p ct vP .nil TR)) ∧ SameAux m m2 := by
  cases TR with
  | nil =>
    cases q with
    | nil => exact swap_far1_succ_root_nil h
    | cons f q =>
      cases f with
      | L g cg vg sg => exact swap_far1_succ_L_nil h
      | R g cg vg sg => exact swap_far1_succ_R_nil h
  | node r cr vr rl rr =>
    cases q with
    | nil => exact swap_far1_succ_root_node h
    | cons f q =>
      cases f with
      | L g cg vg sg => exact swap_far1_succ_L_node h
      | R g cg vg sg => exact swap_far1_succ_R_node h

theorem swap_far2_succ {m : map K V} {q rm : List (frame K V)} {p t l k f : Nat}
    {cP ct cl ck cf : color_type} {vP vt vl vk vf : Option (K × V)}
    {ll lr TR sk sf : tree K V}
    (h : Rep m (fill (.L f cf vf sf :: (rm ++ .L k ck vk sk ::
      .R p cP vP (.node l cl vl ll lr) :: q)) (.node t ct vt .nil TR))) :
    ∃ m2, map._swap_nodes m (some p) (some t) = some m2 ∧
      Rep m2 (fill (.L f cf vf sf :: (rm ++ .L k ck vk sk ::
        .R t cP vt (.node l cl vl ll lr) :: q)) (.node p ct vP .nil TR)) ∧ SameAux m m2 := by
  cases TR with
  | nil =>
    cases q with
    | nil => exact swap_far2_succ_root_nil h
    | cons f q =>
      cases f with
      | L g cg vg sg => exact swap_far2_succ_L_nil h
      | R g cg vg sg => exact swap_far2_succ_R_nil h
  | node r cr vr rl rr =>
    cases q with
    | nil => exact swap_far2_succ_root_node h
    | cons f q =>
      cases f with
      | L g cg vg sg => exact swap_far2_succ_L_node h
      | R g cg vg sg => exact swap_far2_succ_R_node h

/-- Member `_swap_nodes` of a node with two children and a node without left child that is
reached from its right child by left links only: the two nodes exchange their places and
colours. -/
theorem swap_far_succ {m : map K V} {q rs : List (frame K V)} {p t l : Nat}
    {cP ct cl : color_type} {vP vt vl : Option (K × V)} {ll lr TR : tree K V}
    (hne : rs ≠ []) (hL : AllL rs)
    (h : Rep m (fill (rs ++ .R p cP vP (.node l cl vl ll lr) :: q) (.node t ct vt .nil TR))) :
    ∃ m2, map._swap_nodes m (some p) (some t) = some m2 ∧
      Rep m2 (fill (rs ++ .R t cP vt (.node l cl vl ll lr) :: q) (.node p ct vP .nil TR)) ∧
      SameAux m m2 := by
  cases rs with
  | nil => exact absurd rfl hne
  | cons f0 rs =>
    obtain ⟨⟨f, cf, vf, sf, rfl⟩, hL2⟩ := AllL.cons_iff.1 hL
    rcases List.eq_nil_or_concat rs with rfl | ⟨rm, k0, rfl⟩
    · exact swap_far1_succ h
    · have hk : ∃ a c v s, k0 = frame.L a c v s := hL2 k0 (by simp)
      obtain ⟨k, ck, vk, sk, rfl⟩ := hk
      have e : ∀ (x : frame K V),
          frame.L f cf vf sf :: rm.concat (frame.L k ck vk sk) ++ x :: q =
          frame.L f cf vf sf :: (rm ++ frame.L k ck vk sk :: x :: q) := by
        intro x; simp
      rw [e] at h ⊢
      exact swap_far2_succ h

end ft

namespace ft
open color_type
variable {K V : Type}

/-! ### Unlinking a node with at most one child -/

/-- A state whose memory holds a tree made of some of the nodes represents it. -/
theorem Rep.of_sub {m m2 : map K V} {t t2 : tree K V} (h : Rep m t)
    (ha : t2.addrs.Sublist t.addrs) (hb : m2.brk = m.brk) (hr : m2._root = t2.top)
    (hs : Shaped m2.mem none t2) : Rep m2 t2 :=
  ⟨hr, hs, ha.nodup h.nodup, by
    intro a h2; rw [hb]; exact h.bound a (ha.subset h2)⟩

theorem fill_sublist (p : List (frame K V)) {t t2 : tree K V} (h : t2.addrs.Sublist t.addrs) :
    (fill p t2).addrs.Sublist (fill p t).addrs := by
  rw [fill_addrs, fill_addrs]
  exact (List.Sublist.append (List.Sublist.append (List.Sublist.refl _) h)
    (List.Sublist.refl _))

/-- The cells after `set_parent_target`, case `leaf_red_L`. -/
theorem spt_leaf_red_L_cells {m : map K V} {p g : Nat}
    {cg : color_type} {vP vg : Option (K × V)} {q1 q2 : ptr}
    (c_p : m.mem p = some { color := red, val := vP, l := none, r := none, parent := some g })
    (c_g : m.mem g = some { color := cg, val := vg, l := some p, r := q1, parent := q2 })
    (d_p_g : p ≠ g) :
    ∃ m2, map.set_parent_target m (some p) none = some m2 ∧
      m2.mem p = some { color := red, val := vP, l := none, r := none, parent := some g } ∧
      m2.mem g = some { color := cg, val := vg, l := none, r := q1, parent := q2 } ∧
      (∀ b, b ∉ [g] → m2.mem b = m.mem b) ∧
      m2._root = m._root ∧
      m2.brk = m.brk ∧
      m2._sz = m._sz ∧
      m2._cmp_k = m._cmp_k :=
  have hr0 : m._root = m._root := rfl
  Exists.elim (set_l_step (m := m) c_g none) fun m1 S1 =>
  have w1 : m1.mem g = some { color := cg, val := vg, l := none, r := q1, parent := q2 } := S1.2.1
  have hop : map.set_parent_target m (some p) none = some m1 := by
    simp only [map.set_parent_target, map.set_parent_target_fix, isOnLeft,
      (get_parent_eq (m := m) c_p : get_parent m (some p) = some (some g)),
      (get_l_eq (m := m) c_g : get_l m (some g) = some (some p)),
      (get_parent_eq (m := m) c_p : get_parent m (some p) = some (some g)), S1.1,
      (get_color_eq (m := m1) ((S1.2.2.1 p d_p_g).trans c_p) : get_color m1 (some p) = some red),
      bind_eq_ub, pure_eq_some, ub_bind_some, ne_eq, Option.some.injEq, not_false_eq_true,
      not_true_eq_false, and_self, and_true, true_and, and_false, false_and, if_true, if_false,
      ite_true, ite_false, reduceCtorEq, reduceIte, ite_not, not_not, Bool.not_eq_true,
      decide_eq_true_eq, decide_eq_false_iff_not, decide_True, decide_False, Bool.false_eq_true,
      eq_self_iff_true, Option.isSome_some, Option.isSome_none]
  have h_g : ∀ b, b ∉ [g] → b ≠ g := fun b hb e => hb (e ▸ List.Mem.head _)
  ⟨m1, hop, ((S1.2.2.1 p d_p_g).trans c_p), w1, (fun b hb => (S1.2.2.1 b (h_g b hb))),
    (S1.2.2.2.2.1.trans hr0), S1.2.2.2.1, S1.2.2.2.2.2.1, S1.2.2.2.2.2.2⟩

/-- Member `set_parent_target` with a null target at a red left child without children. -/
theorem spt_leaf_red_L
    {m : map K V} {p g : Nat} {cg : color_type} {vP vg : Option (K × V)} {sg : tree K V}
    {q : List (frame K V)}
    (h : Rep m (fill ((.L g cg vg sg) :: q)
      (.node p red vP .nil .nil))) :
    ∃ m2, map.set_parent_target m (some p) none = some m2 ∧
      Rep m2 (fill ((.L g cg vg sg) :: q)
        .nil) ∧ SameAux m m2 :=
  have hs := shaped_fill.1 h.shaped
  have c_p : m.mem p = some { color := red, val := vP, l := none, r := none, parent := some g } :=
    hs.2.1
  have c_g : m.mem g = some { color := cg, val := vg, l := some p, r := sg.top, parent := ptop q }
    := hs.1.1
  have hB : (List.flatten [(pbefore q).map Prod.fst, [p], [g], sg.addrs, (pafter q).map
    Prod.fst]).Nodup := by
    have e : (fill ((.L g cg vg sg) :: q) (.node p red vP .nil .nil)).addrs =
        List.flatten [(pbefore q).map Prod.fst, [p], [g], sg.addrs, (pafter q).map Prod.fst] := by
      rw [fill_addrs]
      simp [pbefore, pafter, pbefore_append, pafter_append, tree.addrs]
    exact e ▸ h.nodup
  Exists.elim (spt_leaf_red_L_cells c_p c_g (blocks_ne_at hB 1 2 rfl rfl rfl)) fun m2 H =>
  have fr := H.2.2.2.1
  have a_sg : ∀ b ∈ sg.addrs, m2.mem b = m.mem b :=
    region_agree hB [2] [g] 3 rfl rfl rfl fr
  have a_q : ∀ b ∈ paddrs q, m2.mem b = m.mem b :=
    paddrs_agree (region_agree hB [2] [g] 0 rfl rfl rfl fr)
      (region_agree hB [2] [g] 4 rfl rfl rfl fr)
  have hroot : m2._root = (fill ((.L g cg vg sg) :: q) .nil).top := by
    rw [H.2.2.2.2.1]
    refine h.root.trans ?_
    simp only [fill_L, fill_R, fill_append]
    exact fill_top_congr rfl
  have hpath : ShapedPath m2.mem ((.L g cg vg sg) :: q) none :=
    ⟨H.2.2.1, Shaped.agree hs.1.2.1 a_sg, ShapedPath.agree_path hs.1.2.2 a_q⟩
  have htree : Shaped m2.mem (some g) .nil :=
    trivial
  ⟨m2, H.1, h.of_sub (fill_sublist _ (by simp)) H.2.2.2.2.2.1 hroot (shaped_fill.2 ⟨hpath, htree⟩),
    ⟨H.2.2.2.2.2.1, H.2.2.2.2.2.2.1, H.2.2.2.2.2.2.2⟩⟩

/-- The cells after `set_parent_target`, case `leaf_black_L`. -/
theorem spt_leaf_black_L_cells {m : map K V} {p g : Nat}
    {cg : color_type} {vP vg : Option (K × V)} {q1 q2 : ptr}
    (c_p : m.mem p = some { color := black, val := vP, l := none, r := none, parent := some g })
    (c_g : m.mem g = some { color := cg, val := vg, l := some p, r := q1, parent := q2 })
    (d_p_g : p ≠ g) :
    ∃ m2, map.set_parent_target m (some p) none = map.fixDoubleBlack (2 * m2.brk + 2) m2 none (some g) q1 ∧
      m2.mem p = some { color := black, val := vP, l := none, r := none, parent := some g } ∧
      m2.mem g = some { color := cg, val := vg, l := none, r := q1, parent := q2 } ∧
      (∀ b, b ∉ [g] → m2.mem b = m.mem b) ∧
      m2._root = m._root ∧
      m2.brk = m.brk ∧
      m2._sz = m._sz ∧
      m2._cmp_k = m._cmp_k :=
  have hr0 : m._root = m._root := rfl
  Exists.elim (set_l_step (m := m) c_g none) fun m1 S1 =>
  have w1 : m1.mem g = some { color := cg, val := vg, l := none, r := q1, parent := q2 } := S1.2.1
  have hop : map.set_parent_target m (some p) none = map.fixDoubleBlack (2 * m1.brk + 2) m1 none
    (some g) q1 := by
    simp only [map.set_parent_target, map.set_parent_target_fix, isOnLeft,
      (get_parent_eq (m := m) c_p : get_parent m (some p) = some (some g)),
      (get_l_eq (m := m) c_g : get_l m (some g) = some (some p)),
      (get_parent_eq (m := m) c_p : get_parent m (some p) = some (some g)), S1.1,
      (get_color_eq (m := m1) ((S1.2.2.1 p d_p_g).trans c_p) : get_color m1 (some p) = some black),
      (get_parent_eq (m := m1) ((S1.2.2.1 p d_p_g).trans c_p) : get_parent m1 (some p) = some (some
        g)),
      (get_l_eq (m := m1) w1 : get_l m1 (some g) = some none),
      (get_r_eq (m := m1) w1 : get_r m1 (some g) = some q1), bind_eq_ub, pure_eq_some,
      ub_bind_some, ne_eq, Option.some.injEq, not_false_eq_true, not_true_eq_false, and_self,
      and_true, true_and, and_false, false_and, if_true, if_false, ite_true, ite_false,
      reduceCtorEq, reduceIte, ite_not, not_not, Bool.not_eq_true, decide_eq_true_eq,
      decide_eq_false_iff_not, decide_True, decide_False, Bool.false_eq_true, eq_self_iff_true,
      Option.isSome_some, Option.isSome_none]
  have h_g : ∀ b, b ∉ [g] → b ≠ g := fun b hb e => hb (e ▸ List.Mem.head _)
  ⟨m1, hop, ((S1.2.2.1 p d_p_g).trans c_p), w1, (fun b hb => (S1.2.2.1 b (h_g b hb))),
    (S1.2.2.2.2.1.trans hr0), S1.2.2.2.1, S1.2.2.2.2.2.1, S1.2.2.2.2.2.2⟩

/-- Member `set_parent_target` with a null target at a black left child without children: what is left is the call of `fixDoubleBlack`. -/
theorem spt_leaf_black_L
    {m : map K V} {p g : Nat} {cg : color_type} {vP vg : Option (K × V)} {sg : tree K V}
    {q : List (frame K V)}
    (h : Rep m (fill ((.L g cg vg sg) :: q)
      (.node p black vP .nil .nil))) :
    ∃ m2, map.set_parent_target m (some p) none = map.fixDoubleBlack (2 * m2.brk + 2) m2 none (some g) sg.top ∧
      Rep m2 (fill ((.L g cg vg sg) :: q)
        .nil) ∧ SameAux m m2 :=
  have hs := shaped_fill.1 h.shaped
  have c_p : m.mem p = some { color := black, val := vP, l := none, r := none, parent := some g }
    := hs.2.1
  have c_g : m.mem g = some { color := cg, val := vg, l := some p, r := sg.top, parent := ptop q }
    := hs.1.1
  have hB : (List.flatten [(pbefore q).map Prod.fst, [p], [g], sg.addrs, (pafter q).map
    Prod.fst]).Nodup := by
    have e : (fill ((.L g cg vg sg) :: q) (.node p black vP .nil .nil)).addrs =
        List.flatten [(pbefore q).map Prod.fst, [p], [g], sg.addrs, (pafter q).map Prod.fst] := by
      rw [fill_addrs]
      simp [pbefore, pafter, pbefore_append, pafter_append, tree.addrs]
    exact e ▸ h.nodup
  Exists.elim (spt_leaf_black_L_cells c_p c_g (blocks_ne_at hB 1 2 rfl rfl rfl)) fun m2 H =>
  have fr := H.2.2.2.1
  have a_sg : ∀ b ∈ sg.addrs, m2.mem b = m.mem b :=
    region_agree hB [2] [g] 3 rfl rfl rfl fr
  have a_q : ∀ b ∈ paddrs q, m2.mem b = m.mem b :=
    paddrs_agree (region_agree hB [2] [g] 0 rfl rfl rfl fr)
      (region_agree hB [2] [g] 4 rfl rfl rfl fr)
  have hroot : m2._root = (fill ((.L g cg vg sg) :: q) .nil).top := by
    rw [H.2.2.2.2.1]
    refine h.root.trans ?_
    simp only [fill_L, fill_R, fill_append]
    exact fill_top_congr rfl
  have hpath : ShapedPath m2.mem ((.L g cg vg sg) :: q) none :=
    ⟨H.2.2.1, Shaped.agree hs.1.2.1 a_sg, ShapedPath.agree_path hs.1.2.2 a_q⟩
  have htree : Shaped m2.mem (some g) .nil :=
    trivial
  ⟨m2, H.1, h.of_sub (fill_sublist _ (by simp)) H.2.2.2.2.2.1 hroot (shaped_fill.2 ⟨hpath, htree⟩),
    ⟨H.2.2.2.2.2.1, H.2.2.2.2.2.2.1, H.2.2.2.2.2.2.2⟩⟩

/-- The cells after `set_parent_target`, case `r_red_L`. -/
theorem spt_r_red_L_cells {m : map K V} {p r g : Nat}
    {cr cg : color_type} {vP vr vg : Option (K × V)} {q1 q2 q3 q4 : ptr}
    (c_p : m.mem p = some { color := red, val := vP, l := none, r := some r, parent := some g })
    (c_r : m.mem r = some { color := cr, val := vr, l := q1, r := q2, parent := some p })
    (c_g : m.mem g = some { color := cg, val := vg, l := some p, r := q3, parent := q4 })
    (d_p_g : p ≠ g)
    (d_r_g : r ≠ g)
    (d_p_r : p ≠ r)
    (d_g_r : g ≠ r) :
    ∃ m2, map.set_parent_target m (some p) (some r) = some m2 ∧
      m2.mem p = some { color := red, val := vP, l := none, r := some r, parent := some g } ∧
      m2.mem r = some { color := cr, val := vr, l := q1, r := q2, parent := some g } ∧
      m2.mem g = some { color := cg, val := vg, l := some r, r := q3, parent := q4 } ∧
      (∀ b, b ∉ [g, r] → m2.mem b = m.mem b) ∧
      m2._root = m._root ∧
      m2.brk = m.brk ∧
      m2._sz = m._sz ∧
      m2._cmp_k = m._cmp_k :=
  have hr0 : m._root = m._root := rfl
  Exists.elim (set_l_step (m := m) c_g (some r)) fun m1 S1 =>
  have w1 : m1.mem g = some { color := cg, val := vg, l := some r, r := q3, parent := q4 } := S1.2.1
  Exists.elim (set_parent_step (m := m1) ((S1.2.2.1 r d_r_g).trans c_r) (some g)) fun m2 S2 =>
  have w2 : m2.mem r = some { color := cr, val := vr, l := q1, r := q2, parent := some g } := S2.2.1
  have k2_p := (S2.2.2.1 p d_p_r).trans ((S1.2.2.1 p d_p_g).trans c_p)
  have hop : map.set_parent_target m (some p) (some r) = some m2 := by
    simp only [map.set_parent_target, map.set_parent_target_fix, isOnLeft,
      (get_parent_eq (m := m) c_p : get_parent m (some p) = some (some g)),
      (get_l_eq (m := m) c_g : get_l m (some g) = some (some p)),
      (get_parent_eq (m := m) c_p : get_parent m (some p) = some (some g)), S1.1,
      (get_parent_eq (m := m1) ((S1.2.2.1 p d_p_g).trans c_p) : get_parent m1 (some p) = some (some
        g)),
      S2.1, (get_color_eq (m := m2) k2_p : get_color m2 (some p) = some red), bind_eq_ub,
      pure_eq_some, ub_bind_some, ne_eq, Option.some.injEq, not_false_eq_true, not_true_eq_false,
      and_self, and_true, true_and, and_false, false_and, if_true, if_false, ite_true, ite_false,
      reduceCtorEq, reduceIte, ite_not, not_not, Bool.not_eq_true, decide_eq_true_eq,
      decide_eq_false_iff_not, decide_True, decide_False, Bool.false_eq_true, eq_self_iff_true,
      Option.isSome_some, Option.isSome_none]
  have h_g : ∀ b, b ∉ [g, r] → b ≠ g := fun b hb e => hb (e ▸ List.Mem.head _)
  have h_r : ∀ b, b ∉ [g, r] → b ≠ r := fun b hb e => hb (e ▸ List.Mem.tail _ (List.Mem.head _))
  ⟨m2, hop, k2_p, w2, ((S2.2.2.1 g d_g_r).trans w1), (fun b hb => ((S2.2.2.1 b (h_r b hb)).trans
    (S1.2.2.1 b (h_g b hb)))), (S2.2.2.2.2.1.trans (S1.2.2.2.2.1.trans hr0)), (S2.2.2.2.1.trans
    S1.2.2.2.1), (S2.2.2.2.2.2.1.trans S1.2.2.2.2.2.1), (S2.2.2.2.2.2.2.trans S1.2.2.2.2.2.2)⟩

/-- Member `set_parent_target` at a red left child whose only child is its right child. -/
theorem spt_r_red_L
    {m : map K V} {p r g : Nat} {cr cg : color_type} {vP vr vg : Option (K × V)}
    {rl rr sg : tree K V} {q : List (frame K V)}
    (h : Rep m (fill ((.L g cg vg sg) :: q)
      (.node p red vP .nil (.node r cr vr rl rr)))) :
    ∃ m2, map.set_parent_target m (some p) (some r) = some m2 ∧
      Rep m2 (fill ((.L g cg vg sg) :: q)
        (.node r cr vr rl rr)) ∧ SameAux m m2 :=
  have hs := shaped_fill.1 h.shaped
  have c_p : m.mem p = some { color := red, val := vP, l := none, r := some r, parent := some g }
    := hs.2.1
  have c_r : m.mem r = some { color := cr, val := vr, l := rl.top, r := rr.top, parent := some p }
    := hs.2.2.2.1
  have c_g : m.mem g = some { color := cg, val := vg, l := some p, r := sg.top, parent := ptop q }
    := hs.1.1
  have hB : (List.flatten [(pbefore q).map Prod.fst, [p], rl.addrs, [r], rr.addrs, [g], sg.addrs,
    (pafter q).map Prod.fst]).Nodup := by
    have e : (fill ((.L g cg vg sg) :: q) (.node p red vP .nil (.node r cr vr rl rr))).addrs =
        List.flatten [(pbefore q).map Prod.fst, [p], rl.addrs, [r], rr.addrs, [g], sg.addrs,
          (pafter q).map Prod.fst] := by
      rw [fill_addrs]
      simp [pbefore, pafter, pbefore_append, pafter_append, tree.addrs]
    exact e ▸ h.nodup
  Exists.elim (spt_r_red_L_cells c_p c_r c_g (blocks_ne_at hB 1 5 rfl rfl rfl) (blocks_ne_at hB 3 5
    rfl rfl rfl) (blocks_ne_at hB 1 3 rfl rfl rfl) (blocks_ne_at hB 5 3 rfl rfl rfl)) fun m2 H =>
  have fr := H.2.2.2.2.1
  have a_rl : ∀ b ∈ rl.addrs, m2.mem b = m.mem b :=
    region_agree hB [5, 3] [g, r] 2 rfl rfl rfl fr
  have a_rr : ∀ b ∈ rr.addrs, m2.mem b = m.mem b :=
    region_agree hB [5, 3] [g, r] 4 rfl rfl rfl fr
  have a_sg : ∀ b ∈ sg.addrs, m2.mem b = m.mem b :=
    region_agree hB [5, 3] [g, r] 6 rfl rfl rfl fr
  have a_q : ∀ b ∈ paddrs q, m2.mem b = m.mem b :=
    paddrs_agree (region_agree hB [5, 3] [g, r] 0 rfl rfl rfl fr)
      (region_agree hB [5, 3] [g, r] 7 rfl rfl rfl fr)
  have hroot : m2._root = (fill ((.L g cg vg sg) :: q) (.node r cr vr rl rr)).top := by
    rw [H.2.2.2.2.2.1]
    refine h.root.trans ?_
    simp only [fill_L, fill_R, fill_append]
    exact fill_top_congr rfl
  have hpath : ShapedPath m2.mem ((.L g cg vg sg) :: q) (some r) :=
    ⟨H.2.2.2.1, Shaped.agree hs.1.2.1 a_sg, ShapedPath.agree_path hs.1.2.2 a_q⟩
  have htree : Shaped m2.mem (some g) (.node r cr vr rl rr) :=
    ⟨H.2.2.1, Shaped.agree hs.2.2.2.2.1 a_rl, Shaped.agree hs.2.2.2.2.2 a_rr⟩
  ⟨m2, H.1, h.of_sub (fill_sublist _ (by simp)) H.2.2.2.2.2.2.1 hroot (shaped_fill.2 ⟨hpath,
    htree⟩), ⟨H.2.2.2.2.2.2.1, H.2.2.2.2.2.2.2.1, H.2.2.2.2.2.2.2.2⟩⟩

/-- The cells after `set_parent_target`, case `r_black_black_L`. -/
theorem spt_r_black_black_L_cells {m : map K V} {p r g : Nat}
    {cg : color_type} {vP vr vg : Option (K × V)} {q1 q2 q3 q4 : ptr}
    (c_p : m.mem p = some { color := black, val := vP, l := none, r := some r, parent := some g })
    (c_r : m.mem r = some { color := black, val := vr, l := q1, r := q2, parent := some p })
    (c_g : m.mem g = some { color := cg, val := vg, l := some p, r := q3, parent := q4 })
    (d_p_g : p ≠ g)
    (d_r_g : r ≠ g)
    (d_p_r : p ≠ r)
    (d_g_r : g ≠ r) :
    ∃ m2, map.set_parent_target m (some p) (some r) = map.fixDoubleBlack (2 * m2.brk + 2) m2 (some r) (some g) q3 ∧
      m2.mem p = some { color := black, val := vP, l := none, r := some r, parent := some g } ∧
      m2.mem r = some { color := black, val := vr, l := q1, r := q2, parent := some g } ∧
      m2.mem g = some { color := cg, val := vg, l := some r, r := q3, parent := q4 } ∧
      (∀ b, b ∉ [g, r] → m2.mem b = m.mem b) ∧
      m2._root = m._root ∧
      m2.brk = m.brk ∧
      m2._sz = m._sz ∧
      m2._cmp_k = m._cmp_k :=
  have hr0 : m._root = m._root := rfl
  Exists.elim (set_l_step (m := m) c_g (some r)) fun m1 S1 =>
  have w1 : m1.mem g = some { color := cg, val := vg, l := some r, r := q3, parent := q4 } := S1.2.1
  Exists.elim (set_parent_step (m := m1) ((S1.2.2.1 r d_r_g).trans c_r) (some g)) fun m2 S2 =>
  have w2 : m2.mem r = some { color := black, val := vr, l := q1, r := q2, parent := some g } :=
    S2.2.1
  have k2_p := (S2.2.2.1 p d_p_r).trans ((S1.2.2.1 p d_p_g).trans c_p)
  have hop : map.set_parent_target m (some p) (some r) = map.fixDoubleBlack (2 * m2.brk + 2) m2
    (some r) (some g) q3 := by
    simp only [map.set_parent_target, map.set_parent_target_fix, isOnLeft,
      (get_parent_eq (m := m) c_p : get_parent m (some p) = some (some g)),
      (get_l_eq (m := m) c_g : get_l m (some g) = some (some p)),
      (get_parent_eq (m := m) c_p : get_parent m (some p) = some (some g)), S1.1,
      (get_parent_eq (m := m1) ((S1.2.2.1 p d_p_g).trans c_p) : get_parent m1 (some p) = some (some
        g)),
      S2.1, (get_color_eq (m := m2) k2_p : get_color m2 (some p) = some black),
      (get_color_eq (m := m2) w2 : get_color m2 (some r) = some black),
      (get_parent_eq (m := m2) w2 : get_parent m2 (some r) = some (some g)),
      (get_parent_eq (m := m2) k2_p : get_parent m2 (some p) = some (some g)),
      (get_l_eq (m := m2) ((S2.2.2.1 g d_g_r).trans w1) : get_l m2 (some g) = some (some r)),
      (get_r_eq (m := m2) ((S2.2.2.1 g d_g_r).trans w1) : get_r m2 (some g) = some q3),
      bind_eq_ub, pure_eq_some, ub_bind_some, ne_eq, Option.some.injEq, not_false_eq_true,
      not_true_eq_false, and_self, and_true, true_and, and_false, false_and, if_true, if_false,
      ite_true, ite_false, reduceCtorEq, reduceIte, ite_not, not_not, Bool.not_eq_true,
      decide_eq_true_eq, decide_eq_false_iff_not, decide_True, decide_False, Bool.false_eq_true,
      eq_self_iff_true, Option.isSome_some, Option.isSome_none]
  have h_g : ∀ b, b ∉ [g, r] → b ≠ g := fun b hb e => hb (e ▸ List.Mem.head _)
  have h_r : ∀ b, b ∉ [g, r] → b ≠ r := fun b hb e => hb (e ▸ List.Mem.tail _ (List.Mem.head _))
  ⟨m2, hop, k2_p, w2, ((S2.2.2.1 g d_g_r).trans w1), (fun b hb => ((S2.2.2.1 b (h_r b hb)).trans
    (S1.2.2.1 b (h_g b hb)))), (S2.2.2.2.2.1.trans (S1.2.2.2.2.1.trans hr0)), (S2.2.2.2.1.trans
    S1.2.2.2.1), (S2.2.2.2.2.2.1.trans S1.2.2.2.2.2.1), (S2.2.2.2.2.2.2.trans S1.2.2.2.2.2.2)⟩

/-- Member `set_parent_target` at a black left child whose only child, the right one, is black: what is left is the call of `fixDoubleBlack`. -/
theorem spt_r_black_black_L
    {m : map K V} {p r g : Nat} {cg : color_type} {vP vr vg : Option (K × V)}
    {rl rr sg : tree K V} {q : List (frame K V)}
    (h : Rep m (fill ((.L g cg vg sg) :: q)
      (.node p black vP .nil (.node r black vr rl rr)))) :
    ∃ m2, map.set_parent_target m (some p) (some r) = map.fixDoubleBlack (2 * m2.brk + 2) m2 (some r) (some g) sg.top ∧
      Rep m2 (fill ((.L g cg vg sg) :: q)
        (.node r black vr rl rr)) ∧ SameAux m m2 :=
  have hs := shaped_fill.1 h.shaped
  have c_p : m.mem p = some { color := black, val := vP, l := none, r := some r, parent := some g }
    := hs.2.1
  have c_r : m.mem r = some { color := black, val := vr, l := rl.top, r := rr.top, parent := some p
    } := hs.2.2.2.1
  have c_g : m.mem g = some { color := cg, val := vg, l := some p, r := sg.top, parent := ptop q }
    := hs.1.1
  have hB : (List.flatten [(pbefore q).map Prod.fst, [p], rl.addrs, [r], rr.addrs, [g], sg.addrs,
    (pafter q).map Prod.fst]).Nodup := by
    have e : (fill ((.L g cg vg sg) :: q) (.node p black vP .nil (.node r black vr rl rr))).addrs =
        List.flatten [(pbefore q).map Prod.fst, [p], rl.addrs, [r], rr.addrs, [g], sg.addrs,
          (pafter q).map Prod.fst] := by
      rw [fill_addrs]
      simp [pbefore, pafter, pbefore_append, pafter_append, tree.addrs]
    exact e ▸ h.nodup
  Exists.elim (spt_r_black_black_L_cells c_p c_r c_g (blocks_ne_at hB 1 5 rfl rfl rfl)
    (blocks_ne_at hB 3 5 rfl rfl rfl) (blocks_ne_at hB 1 3 rfl rfl rfl) (blocks_ne_at hB 5 3 rfl
    rfl rfl)) fun m2 H =>
  have fr := H.2.2.2.2.1
  have a_rl : ∀ b ∈ rl.addrs, m2.mem b = m.mem b :=
    region_agree hB [5, 3] [g, r] 2 rfl rfl rfl fr
  have a_rr : ∀ b ∈ rr.addrs, m2.mem b = m.mem b :=
    region_agree hB [5, 3] [g, r] 4 rfl rfl rfl fr
  have a_sg : ∀ b ∈ sg.addrs, m2.mem b = m.mem b :=
    region_agree hB [5, 3] [g, r] 6 rfl rfl rfl fr
  have a_q : ∀ b ∈ paddrs q, m2.mem b = m.mem b :=
    paddrs_agree (region_agree hB [5, 3] [g, r] 0 rfl rfl rfl fr)
      (region_agree hB [5, 3] [g, r] 7 rfl rfl rfl fr)
  have hroot : m2._root = (fill ((.L g cg vg sg) :: q) (.node r black vr rl rr)).top := by
    rw [H.2.2.2.2.2.1]
    refine h.root.trans ?_
    simp only [fill_L, fill_R, fill_append]
    exact fill_top_congr rfl
  have hpath : ShapedPath m2.mem ((.L g cg vg sg) :: q) (some r) :=
    ⟨H.2.2.2.1, Shaped.agree hs.1.2.1 a_sg, ShapedPath.agree_path hs.1.2.2 a_q⟩
  have htree : Shaped m2.mem (some g) (.node r black vr rl rr) :=
    ⟨H.2.2.1, Shaped.agree hs.2.2.2.2.1 a_rl, Shaped.agree hs.2.2.2.2.2 a_rr⟩
  ⟨m2, H.1, h.of_sub (fill_sublist _ (by simp)) H.2.2.2.2.2.2.1 hroot (shaped_fill.2 ⟨hpath,
    htree⟩), ⟨H.2.2.2.2.2.2.1, H.2.2.2.2.2.2.2.1, H.2.2.2.2.2.2.2.2⟩⟩

/-- The cells after `set_parent_target`, case `r_black_red_L`. -/
theorem spt_r_black_red_L_cells {m : map K V} {p r g : Nat}
    {cg : color_type} {vP vr vg : Option (K × V)} {q1 q2 q3 q4 : ptr}
    (c_p : m.mem p = some { color := black, val := vP, l := none, r := some r, parent := some g })
    (c_r : m.mem r = some { color := red, val := vr, l := q1, r := q2, parent := some p })
    (c_g : m.mem g = some { color := cg, val := vg, l := some p, r := q3, parent := q4 })
    (d_p_g : p ≠ g)
    (d_r_g : r ≠ g)
    (d_p_r : p ≠ r)
    (d_g_r : g ≠ r) :
    ∃ m2, map.set_parent_target m (some p) (some r) = some m2 ∧
      m2.mem p = some { color := black, val := vP, l := none, r := some r, parent := some g } ∧
      m2.mem r = some { color := black, val := vr, l := q1, r := q2, parent := some g } ∧
      m2.mem g = some { color := cg, val := vg, l := some r, r := q3, parent := q4 } ∧
      (∀ b, b ∉ [g, r] → m2.mem b = m.mem b) ∧
      m2._root = m._root ∧
      m2.brk = m.brk ∧
      m2._sz = m._sz ∧
      m2._cmp_k = m._cmp_k :=
  have hr0 : m._root = m._root := rfl
  Exists.elim (set_l_step (m := m) c_g (some r)) fun m1 S1 =>
  have w1 : m1.mem g = some { color := cg, val := vg, l := some r, r := q3, parent := q4 } := S1.2.1
  Exists.elim (set_parent_step (m := m1) ((S1.2.2.1 r d_r_g).trans c_r) (some g)) fun m2 S2 =>
  have w2 : m2.mem r = some { color := red, val := vr, l := q1, r := q2, parent := some g } :=
    S2.2.1
  have k2_p := (S2.2.2.1 p d_p_r).trans ((S1.2.2.1 p d_p_g).trans c_p)
  Exists.elim (set_color_step (m := m2) w2 black) fun m3 S3 =>
  have w3 : m3.mem r = some { color := black, val := vr, l := q1, r := q2, parent := some g } :=
    S3.2.1
  have xr3 : m3._root = m._root := S3.2.2.2.2.1.trans (S2.2.2.2.2.1.trans (S1.2.2.2.2.1.trans hr0))
  have k3_g := (S3.2.2.1 g d_g_r).trans ((S2.2.2.1 g d_g_r).trans w1)
  have hop : map.set_parent_target m (some p) (some r) = some m3 := by
    simp only [map.set_parent_target, map.set_parent_target_fix, isOnLeft,
      (get_parent_eq (m := m) c_p : get_parent m (some p) = some (some g)),
      (get_l_eq (m := m) c_g : get_l m (some g) = some (some p)),
      (get_parent_eq (m := m) c_p : get_parent m (some p) = some (some g)), S1.1,
      (get_parent_eq (m := m1) ((S1.2.2.1 p d_p_g).trans c_p) : get_parent m1 (some p) = some (some
        g)),
      S2.1, (get_color_eq (m := m2) k2_p : get_color m2 (some p) = some black),
      (get_color_eq (m := m2) w2 : get_color m2 (some r) = some red), S3.1, bind_eq_ub,
      pure_eq_some, ub_bind_some, ne_eq, Option.some.injEq, not_false_eq_true, not_true_eq_false,
      and_self, and_true, true_and, and_false, false_and, if_true, if_false, ite_true, ite_false,
      reduceCtorEq, reduceIte, ite_not, not_not, Bool.not_eq_true, decide_eq_true_eq,
      decide_eq_false_iff_not, decide_True, decide_False, Bool.false_eq_true, eq_self_iff_true,
      Option.isSome_some, Option.isSome_none]
  have h_g : ∀ b, b ∉ [g, r] → b ≠ g := fun b hb e => hb (e ▸ List.Mem.head _)
  have h_r : ∀ b, b ∉ [g, r] → b ≠ r := fun b hb e => hb (e ▸ List.Mem.tail _ (List.Mem.head _))
  ⟨m3, hop, ((S3.2.2.1 p d_p_r).trans k2_p), w3, k3_g, (fun b hb => ((S3.2.2.1 b (h_r b hb)).trans
    ((S2.2.2.1 b (h_r b hb)).trans (S1.2.2.1 b (h_g b hb))))), xr3, (S3.2.2.2.1.trans
    (S2.2.2.2.1.trans S1.2.2.2.1)), (S3.2.2.2.2.2.1.trans (S2.2.2.2.2.2.1.trans S1.2.2.2.2.2.1)),
    (S3.2.2.2.2.2.2.trans (S2.2.2.2.2.2.2.trans S1.2.2.2.2.2.2))⟩

/-- Member `set_parent_target` at a black left child whose only child, the right one, is red: the child takes the place and becomes black. -/
theorem spt_r_black_red_L
    {m : map K V} {p r g : Nat} {cg : color_type} {vP vr vg : Option (K × V)}
    {rl rr sg : tree K V} {q : List (frame K V)}
    (h : Rep m (fill ((.L g cg vg sg) :: q)
      (.node p black vP .nil (.node r red vr rl rr)))) :
    ∃ m2, map.set_parent_target m (some p) (some r) = some m2 ∧
      Rep m2 (fill ((.L g cg vg sg) :: q)
        (.node r black vr rl rr)) ∧ SameAux m m2 :=
  have hs := shaped_fill.1 h.shaped
  have c_p : m.mem p = some { color := black, val := vP, l := none, r := some r, parent := some g }
    := hs.2.1
  have c_r : m.mem r = some { color := red, val := vr, l := rl.top, r := rr.top, parent := some p }
    := hs.2.2.2.1
  have c_g : m.mem g = some { color := cg, val := vg, l := some p, r := sg.top, parent := ptop q }
    := hs.1.1
  have hB : (List.flatten [(pbefore q).map Prod.fst, [p], rl.addrs, [r], rr.addrs, [g], sg.addrs,
    (pafter q).map Prod.fst]).Nodup := by
    have e : (fill ((.L g cg vg sg) :: q) (.node p black vP .nil (.node r red vr rl rr))).addrs =
        List.flatten [(pbefore q).map Prod.fst, [p], rl.addrs, [r], rr.addrs, [g], sg.addrs,
          (pafter q).map Prod.fst] := by
      rw [fill_addrs]
      simp [pbefore, pafter, pbefore_append, pafter_append, tree.addrs]
    exact e ▸ h.nodup
  Exists.elim (spt_r_black_red_L_cells c_p c_r c_g (blocks_ne_at hB 1 5 rfl rfl rfl) (blocks_ne_at
    hB 3 5 rfl rfl rfl) (blocks_ne_at hB 1 3 rfl rfl rfl) (blocks_ne_at hB 5 3 rfl rfl rfl)) fun m2
    H =>
  have fr := H.2.2.2.2.1
  have a_rl : ∀ b ∈ rl.addrs, m2.mem b = m.mem b :=
    region_agree hB [5, 3] [g, r] 2 rfl rfl rfl fr
  have a_rr : ∀ b ∈ rr.addrs, m2.mem b = m.mem b :=
    region_agree hB [5, 3] [g, r] 4 rfl rfl rfl fr
  have a_sg : ∀ b ∈ sg.addrs, m2.mem b = m.mem b :=
    region_agree hB [5, 3] [g, r] 6 rfl rfl rfl fr
  have a_q : ∀ b ∈ paddrs q, m2.mem b = m.mem b :=
    paddrs_agree (region_agree hB [5, 3] [g, r] 0 rfl rfl rfl fr)
      (region_agree hB [5, 3] [g, r] 7 rfl rfl rfl fr)
  have hroot : m2._root = (fill ((.L g cg vg sg) :: q) (.node r black vr rl rr)).top := by
    rw [H.2.2.2.2.2.1]
    refine h.root.trans ?_
    simp only [fill_L, fill_R, fill_append]
    exact fill_top_congr rfl
  have hpath : ShapedPath m2.mem ((.L g cg vg sg) :: q) (some r) :=
    ⟨H.2.2.2.1, Shaped.agree hs.1.2.1 a_sg, ShapedPath.agree_path hs.1.2.2 a_q⟩
  have htree : Shaped m2.mem (some g) (.node r black vr rl rr) :=
    ⟨H.2.2.1, Shaped.agree hs.2.2.2.2.1 a_rl, Shaped.agree hs.2.2.2.2.2 a_rr⟩
  ⟨m2, H.1, h.of_sub (fill_sublist _ (by simp)) H.2.2.2.2.2.2.1 hroot (shaped_fill.2 ⟨hpath,
    htree⟩), ⟨H.2.2.2.2.2.2.1, H.2.2.2.2.2.2.2.1, H.2.2.2.2.2.2.2.2⟩⟩

/-- The cells after `set_parent_target`, case `l_red_L`. -/
theorem spt_l_red_L_cells {m : map K V} {p r g : Nat}
    {cr cg : color_type} {vP vr vg : Option (K × V)} {q1 q2 q3 q4 : ptr}
    (c_p : m.mem p = some { color := red, val := vP, l := some r, r := none, parent := some g })
    (c_r : m.mem r = some { color := cr, val := vr, l := q1, r := q2, parent := some p })
    (c_g : m.mem g = some { color := cg, val := vg, l := some p, r := q3, parent := q4 })
    (d_p_g : p ≠ g)
    (d_r_g : r ≠ g)
    (d_p_r : p ≠ r)
    (d_g_r : g ≠ r) :
    ∃ m2, map.set_parent_target m (some p) (some r) = some m2 ∧
      m2.mem p = some { color := red, val := vP, l := some r, r := none, parent := some g } ∧
      m2.mem r = some { color := cr, val := vr, l := q1, r := q2, parent := some g } ∧
      m2.mem g = some { color := cg, val := vg, l := some r, r := q3, parent := q4 } ∧
      (∀ b, b ∉ [g, r] → m2.mem b = m.mem b) ∧
      m2._root = m._root ∧
      m2.brk = m.brk ∧
      m2._sz = m._sz ∧
      m2._cmp_k = m._cmp_k :=
  have hr0 : m._root = m._root := rfl
  Exists.elim (set_l_step (m := m) c_g (some r)) fun m1 S1 =>
  have w1 : m1.mem g = some { color := cg, val := vg, l := some r, r := q3, parent := q4 } := S1.2.1
  Exists.elim (set_parent_step (m := m1) ((S1.2.2.1 r d_r_g).trans c_r) (some g)) fun m2 S2 =>
  have w2 : m2.mem r = some { color := cr, val := vr, l := q1, r := q2, parent := some g } := S2.2.1
  have k2_p := (S2.2.2.1 p d_p_r).trans ((S1.2.2.1 p d_p_g).trans c_p)
  have hop : map.set_parent_target m (some p) (some r) = some m2 := by
    simp only [map.set_parent_target, map.set_parent_target_fix, isOnLeft,
      (get_parent_eq (m := m) c_p : get_parent m (some p) = some (some g)),
      (get_l_eq (m := m) c_g : get_l m (some g) = some (some p)),
      (get_parent_eq (m := m) c_p : get_parent m (some p) = some (some g)), S1.1,
      (get_parent_eq (m := m1) ((S1.2.2.1 p d_p_g).trans c_p) : get_parent m1 (some p) = some (some
        g)),
      S2.1, (get_color_eq (m := m2) k2_p : get_color m2 (some p) = some red), bind_eq_ub,
      pure_eq_some, ub_bind_some, ne_eq, Option.some.injEq, not_false_eq_true, not_true_eq_false,
      and_self, and_true, true_and, and_false, false_and, if_true, if_false, ite_true, ite_false,
      reduceCtorEq, reduceIte, ite_not, not_not, Bool.not_eq_true, decide_eq_true_eq,
      decide_eq_false_iff_not, decide_True, decide_False, Bool.false_eq_true, eq_self_iff_true,
      Option.isSome_some, Option.isSome_none]
  have h_g : ∀ b, b ∉ [g, r] → b ≠ g := fun b hb e => hb (e ▸ List.Mem.head _)
  have h_r : ∀ b, b ∉ [g, r] → b ≠ r := fun b hb e => hb (e ▸ List.Mem.tail _ (List.Mem.head _))
  ⟨m2, hop, k2_p, w2, ((S2.2.2.1 g d_g_r).trans w1), (fun b hb => ((S2.2.2.1 b (h_r b hb)).trans
    (S1.2.2.1 b (h_g b hb)))), (S2.2.2.2.2.1.trans (S1.2.2.2.2.1.trans hr0)), (S2.2.2.2.1.trans
    S1.2.2.2.1), (S2.2.2.2.2.2.1.trans S1.2.2.2.2.2.1), (S2.2.2.2.2.2.2.trans S1.2.2.2.2.2.2)⟩

/-- Member `set_parent_target` at a red left child whose only child is its left child. -/
theorem spt_l_red_L
    {m : map K V} {p r g : Nat} {cr cg : color_type} {vP vr vg : Option (K × V)}
    {rl rr sg : tree K V} {q : List (frame K V)}
    (h : Rep m (fill ((.L g cg vg sg) :: q)
      (.node p red vP (.node r cr vr rl rr) .nil))) :
    ∃ m2, map.set_parent_target m (some p) (some r) = some m2 ∧
      Rep m2 (fill ((.L g cg vg sg) :: q)
        (.node r cr vr rl rr)) ∧ SameAux m m2 :=
  have hs := shaped_fill.1 h.shaped
  have c_p : m.mem p = some { color := red, val := vP, l := some r, r := none, parent := some g }
    := hs.2.1
  have c_r : m.mem r = some { color := cr, val := vr, l := rl.top, r := rr.top, parent := some p }
    := hs.2.2.1.1
  have c_g : m.mem g = some { color := cg, val := vg, l := some p, r := sg.top, parent := ptop q }
    := hs.1.1
  have hB : (List.flatten [(pbefore q).map Prod.fst, rl.addrs, [r], rr.addrs, [p], [g], sg.addrs,
    (pafter q).map Prod.fst]).Nodup := by
    have e : (fill ((.L g cg vg sg) :: q) (.node p red vP (.node r cr vr rl rr) .nil)).addrs =
        List.flatten [(pbefore q).map Prod.fst, rl.addrs, [r], rr.addrs, [p], [g], sg.addrs,
          (pafter q).map Prod.fst] := by
      rw [fill_addrs]
      simp [pbefore, pafter, pbefore_append, pafter_append, tree.addrs]
    exact e ▸ h.nodup
  Exists.elim (spt_l_red_L_cells c_p c_r c_g (blocks_ne_at hB 4 5 rfl rfl rfl) (blocks_ne_at hB 2 5
    rfl rfl rfl) (blocks_ne_at hB 4 2 rfl rfl rfl) (blocks_ne_at hB 5 2 rfl rfl rfl)) fun m2 H =>
  have fr := H.2.2.2.2.1
  have a_rl : ∀ b ∈ rl.addrs, m2.mem b = m.mem b :=
    region_agree hB [5, 2] [g, r] 1 rfl rfl rfl fr
  have a_rr : ∀ b ∈ rr.addrs, m2.mem b = m.mem b :=
    region_agree hB [5, 2] [g, r] 3 rfl rfl rfl fr
  have a_sg : ∀ b ∈ sg.addrs, m2.mem b = m.mem b :=
    region_agree hB [5, 2] [g, r] 6 rfl rfl rfl fr
  have a_q : ∀ b ∈ paddrs q, m2.mem b = m.mem b :=
    paddrs_agree (region_agree hB [5, 2] [g, r] 0 rfl rfl rfl fr)
      (region_agree hB [5, 2] [g, r] 7 rfl rfl rfl fr)
  have hroot : m2._root = (fill ((.L g cg vg sg) :: q) (.node r cr vr rl rr)).top := by
    rw [H.2.2.2.2.2.1]
    refine h.root.trans ?_
    simp only [fill_L, fill_R, fill_append]
    exact fill_top_congr rfl
  have hpath : ShapedPath m2.mem ((.L g cg vg sg) :: q) (some r) :=
    ⟨H.2.2.2.1, Shaped.agree hs.1.2.1 a_sg, ShapedPath.agree_path hs.1.2.2 a_q⟩
  have htree : Shaped m2.mem (some g) (.node r cr vr rl rr) :=
    ⟨H.2.2.1, Shaped.agree hs.2.2.1.2.1 a_rl, Shaped.agree hs.2.2.1.2.2 a_rr⟩
  ⟨m2, H.1, h.of_sub (fill_sublist _ (by simp)) H.2.2.2.2.2.2.1 hroot (shaped_fill.2 ⟨hpath,
    htree⟩), ⟨H.2.2.2.2.2.2.1, H.2.2.2.2.2.2.2.1, H.2.2.2.2.2.2.2.2⟩⟩

/-- The cells after `set_parent_target`, case `l_black_black_L`. -/
theorem spt_l_black_black_L_cells {m : map K V} {p r g : Nat}
    {cg : color_type} {vP vr vg : Option (K × V)} {q1 q2 q3 q4 : ptr}
    (c_p : m.mem p = some { color := black, val := vP, l := some r, r := none, parent := some g })
    (c_r : m.mem r = some { color := black, val := vr, l := q1, r := q2, parent := some p })
    (c_g : m.mem g = some { color := cg, val := vg, l := some p, r := q3, parent := q4 })
    (d_p_g : p ≠ g)
    (d_r_g : r ≠ g)
    (d_p_r : p ≠ r)
    (d_g_r : g ≠ r) :
    ∃ m2, map.set_parent_target m (some p) (some r) = map.fixDoubleBlack (2 * m2.brk + 2) m2 (some r) (some g) q3 ∧
      m2.mem p = some { color := black, val := vP, l := some r, r := none, parent := some g } ∧
      m2.mem r = some { color := black, val := vr, l := q1, r := q2, parent := some g } ∧
      m2.mem g = some { color := cg, val := vg, l := some r, r := q3, parent := q4 } ∧
      (∀ b, b ∉ [g, r] → m2.mem b = m.mem b) ∧
      m2._root = m._root ∧
      m2.brk = m.brk ∧
      m2._sz = m._sz ∧
      m2._cmp_k = m._cmp_k :=
  have hr0 : m._root = m._root := rfl
  Exists.elim (set_l_step (m := m) c_g (some r)) fun m1 S1 =>
  have w1 : m1.mem g = some { color := cg, val := vg, l := some r, r := q3, parent := q4 } := S1.2.1
  Exists.elim (set_parent_step (m := m1) ((S1.2.2.1 r d_r_g).trans c_r) (some g)) fun m2 S2 =>
  have w2 : m2.mem r = some { color := black, val := vr, l := q1, r := q2, parent := some g } :=
    S2.2.1
  have k2_p := (S2.2.2.1 p d_p_r).trans ((S1.2.2.1 p d_p_g).trans c_p)
  have hop : map.set_parent_target m (some p) (some r) = map.fixDoubleBlack (2 * m2.brk + 2) m2
    (some r) (some g) q3 := by
    simp only [map.set_parent_target, map.set_parent_target_fix, isOnLeft,
      (get_parent_eq (m := m) c_p : get_parent m (some p) = some (some g)),
      (get_l_eq (m := m) c_g : get_l m (some g) = some (some p)),
      (get_parent_eq (m := m) c_p : get_parent m (some p) = some (some g)), S1.1,
      (get_parent_eq (m := m1) ((S1.2.2.1 p d_p_g).trans c_p) : get_parent m1 (some p) = some (some
        g)),
      S2.1, (get_color_eq (m := m2) k2_p : get_color m2 (some p) = some black),
      (get_color_eq (m := m2) w2 : get_color m2 (some r) = some black),
      (get_parent_eq (m := m2) w2 : get_parent m2 (some r) = some (some g)),
      (get_parent_eq (m := m2) k2_p : get_parent m2 (some p) = some (some g)),
      (get_l_eq (m := m2) ((S2.2.2.1 g d_g_r).trans w1) : get_l m2 (some g) = some (some r)),
      (get_r_eq (m := m2) ((S2.2.2.1 g d_g_r).trans w1) : get_r m2 (some g) = some q3),
      bind_eq_ub, pure_eq_some, ub_bind_some, ne_eq, Option.some.injEq, not_false_eq_true,
      not_true_eq_false, and_self, and_true, true_and, and_false, false_and, if_true, if_false,
      ite_true, ite_false, reduceCtorEq, reduceIte, ite_not, not_not, Bool.not_eq_true,
      decide_eq_true_eq, decide_eq_false_iff_not, decide_True, decide_False, Bool.false_eq_true,
      eq_self_iff_true, Option.isSome_some, Option.isSome_none]
  have h_g : ∀ b, b ∉ [g, r] → b ≠ g := fun b hb e => hb (e ▸ List.Mem.head _)
  have h_r : ∀ b, b ∉ [g, r] → b ≠ r := fun b hb e => hb (e ▸ List.Mem.tail _ (List.Mem.head _))
  ⟨m2, hop, k2_p, w2, ((S2.2.2.1 g d_g_r).trans w1), (fun b hb => ((S2.2.2.1 b (h_r b hb)).trans
    (S1.2.2.1 b (h_g b hb)))), (S2.2.2.2.2.1.trans (S1.2.2.2.2.1.trans hr0)), (S2.2.2.2.1.trans
    S1.2.2.2.1), (S2.2.2.2.2.2.1.trans S1.2.2.2.2.2.1), (S2.2.2.2.2.2.2.trans S1.2.2.2.2.2.2)⟩

/-- Member `set_parent_target` at a black left child whose only child, the left one, is black: what is left is the call of `fixDoubleBlack`. -/
theorem spt_l_black_black_L
    {m : map K V} {p r g : Nat} {cg : color_type} {vP vr vg : Option (K × V)}
    {rl rr sg : tree K V} {q : List (frame K V)}
    (h : Rep m (fill ((.L g cg vg sg) :: q)
      (.node p black vP (.node r black vr rl rr) .nil))) :
    ∃ m2, map.set_parent_target m (some p) (some r) = map.fixDoubleBlack (2 * m2.brk + 2) m2 (some r) (some g) sg.top ∧
      Rep m2 (fill ((.L g cg vg sg) :: q)
        (.node r black vr rl rr)) ∧ SameAux m m2 :=
  have hs := shaped_fill.1 h.shaped
  have c_p : m.mem p = some { color := black, val := vP, l := some r, r := none, parent := some g }
    := hs.2.1
  have c_r : m.mem r = some { color := black, val := vr, l := rl.top, r := rr.top, parent := some p
    } := hs.2.2.1.1
  have c_g : m.mem g = some { color := cg, val := vg, l := some p, r := sg.top, parent := ptop q }
    := hs.1.1
  have hB : (List.flatten [(pbefore q).map Prod.fst, rl.addrs, [r], rr.addrs, [p], [g], sg.addrs,
    (pafter q).map Prod.fst]).Nodup := by
    have e : (fill ((.L g cg vg sg) :: q) (.node p black vP (.node r black vr rl rr) .nil)).addrs =
        List.flatten [(pbefore q).map Prod.fst, rl.addrs, [r], rr.addrs, [p], [g], sg.addrs,
          (pafter q).map Prod.fst] := by
      rw [fill_addrs]
      simp [pbefore, pafter, pbefore_append, pafter_append, tree.addrs]
    exact e ▸ h.nodup
  Exists.elim (spt_l_black_black_L_cells c_p c_r c_g (blocks_ne_at hB 4 5 rfl rfl rfl)
    (blocks_ne_at hB 2 5 rfl rfl rfl) (blocks_ne_at hB 4 2 rfl rfl rfl) (blocks_ne_at hB 5 2 rfl
    rfl rfl)) fun m2 H =>
  have fr := H.2.2.2.2.1
  have a_rl : ∀ b ∈ rl.addrs, m2.mem b = m.mem b :=
    region_agree hB [5, 2] [g, r] 1 rfl rfl rfl fr
  have a_rr : ∀ b ∈ rr.addrs, m2.mem b = m.mem b :=
    region_agree hB [5, 2] [g, r] 3 rfl rfl rfl fr
  have a_sg : ∀ b ∈ sg.addrs, m2.mem b = m.mem b :=
    region_agree hB [5, 2] [g, r] 6 rfl rfl rfl fr
  have a_q : ∀ b ∈ paddrs q, m2.mem b = m.mem b :=
    paddrs_agree (region_agree hB [5, 2] [g, r] 0 rfl rfl rfl fr)
      (region_agree hB [5, 2] [g, r] 7 rfl rfl rfl fr)
  have hroot : m2._root = (fill ((.L g cg vg sg) :: q) (.node r black vr rl rr)).top := by
    rw [H.2.2.2.2.2.1]
    refine h.root.trans ?_
    simp only [fill_L, fill_R, fill_append]
    exact fill_top_congr rfl
  have hpath : ShapedPath m2.mem ((.L g cg vg sg) :: q) (some r) :=
    ⟨H.2.2.2.1, Shaped.agree hs.1.2.1 a_sg, ShapedPath.agree_path hs.1.2.2 a_q⟩
  have htree : Shaped m2.mem (some g) (.node r black vr rl rr) :=
    ⟨H.2.2.1, Shaped.agree hs.2.2.1.2.1 a_rl, Shaped.agree hs.2.2.1.2.2 a_rr⟩
  ⟨m2, H.1, h.of_sub (fill_sublist _ (by simp)) H.2.2.2.2.2.2.1 hroot (shaped_fill.2 ⟨hpath,
    htree⟩), ⟨H.2.2.2.2.2.2.1, H.2.2.2.2.2.2.2.1, H.2.2.2.2.2.2.2.2⟩⟩

/-- The cells after `set_parent_target`, case `l_black_red_L`. -/
theorem spt_l_black_red_L_cells {m : map K V} {p r g : Nat}
    {cg : color_type} {vP vr vg : Option (K × V)} {q1 q2 q3 q4 : ptr}
    (c_p : m.mem p = some { color := black, val := vP, l := some r, r := none, parent := some g })
    (c_r : m.mem r = some { color := red, val := vr, l := q1, r := q2, parent := some p })
    (c_g : m.mem g = some { color := cg, val := vg, l := some p, r := q3, parent := q4 })
    (d_p_g : p ≠ g)
    (d_r_g : r ≠ g)
    (d_p_r : p ≠ r)
    (d_g_r : g ≠ r) :
    ∃ m2, map.set_parent_target m (some p) (some r) = some m2 ∧
      m2.mem p = some { color := black, val := vP, l := some r, r := none, parent := some g } ∧
      m2.mem r = some { color := black, val := vr, l := q1, r := q2, parent := some g } ∧
      m2.mem g = some { color := cg, val := vg, l := some r, r := q3, parent := q4 } ∧
      (∀ b, b ∉ [g, r] → m2.mem b = m.mem b) ∧
      m2._root = m._root ∧
      m2.brk = m.brk ∧
      m2._sz = m._sz ∧
      m2._cmp_k = m._cmp_k :=
  have hr0 : m._root = m._root := rfl
  Exists.elim (set_l_step (m := m) c_g (some r)) fun m1 S1 =>
  have w1 : m1.mem g = some { color := cg, val := vg, l := some r, r := q3, parent := q4 } := S1.2.1
  Exists.elim (set_parent_step (m := m1) ((S1.2.2.1 r d_r_g).trans c_r) (some g)) fun m2 S2 =>
  have w2 : m2.mem r = some { color := red, val := vr, l := q1, r := q2, parent := some g } :=
    S2.2.1
  have k2_p := (S2.2.2.1 p d_p_r).trans ((S1.2.2.1 p d_p_g).trans c_p)
  Exists.elim (set_color_step (m := m2) w2 black) fun m3 S3 =>
  have w3 : m3.mem r = some { color := black, val := vr, l := q1, r := q2, parent := some g } :=
    S3.2.1
  have xr3 : m3._root = m._root := S3.2.2.2.2.1.trans (S2.2.2.2.2.1.trans (S1.2.2.2.2.1.trans hr0))
  have k3_g := (S3.2.2.1 g d_g_r).trans ((S2.2.2.1 g d_g_r).trans w1)
  have hop : map.set_parent_target m (some p) (some r) = some m3 := by
    simp only [map.set_parent_target, map.set_parent_target_fix, isOnLeft,
      (get_parent_eq (m := m) c_p : get_parent m (some p) = some (some g)),
      (get_l_eq (m := m) c_g : get_l m (some g) = some (some p)),
      (get_parent_eq (m := m) c_p : get_parent m (some p) = some (some g)), S1.1,
      (get_parent_eq (m := m1) ((S1.2.2.1 p d_p_g).trans c_p) : get_parent m1 (some p) = some (some
        g)),
      S2.1, (get_color_eq (m := m2) k2_p : get_color m2 (some p) = some black),
      (get_color_eq (m := m2) w2 : get_color m2 (some r) = some red), S3.1, bind_eq_ub,
      pure_eq_some, ub_bind_some, ne_eq, Option.some.injEq, not_false_eq_true, not_true_eq_false,
      and_self, and_true, true_and, and_false, false_and, if_true, if_false, ite_true, ite_false,
      reduceCtorEq, reduceIte, ite_not, not_not, Bool.not_eq_true, decide_eq_true_eq,
      decide_eq_false_iff_not, decide_True, decide_False, Bool.false_eq_true, eq_self_iff_true,
      Option.isSome_some, Option.isSome_none]
  have h_g : ∀ b, b ∉ [g, r] → b ≠ g := fun b hb e => hb (e ▸ List.Mem.head _)
  have h_r : ∀ b, b ∉ [g, r] → b ≠ r := fun b hb e => hb (e ▸ List.Mem.tail _ (List.Mem.head _))
  ⟨m3, hop, ((S3.2.2.1 p d_p_r).trans k2_p), w3, k3_g, (fun b hb => ((S3.2.2.1 b (h_r b hb)).trans
    ((S2.2.2.1 b (h_r b hb)).trans (S1.2.2.1 b (h_g b hb))))), xr3, (S3.2.2.2.1.trans
    (S2.2.2.2.1.trans S1.2.2.2.1)), (S3.2.2.2.2.2.1.trans (S2.2.2.2.2.2.1.trans S1.2.2.2.2.2.1)),
    (S3.2.2.2.2.2.2.trans (S2.2.2.2.2.2.2.trans S1.2.2.2.2.2.2))⟩

/-- Member `set_parent_target` at a black left child whose only child, the left one, is red: the child takes the place and becomes black. -/
theorem spt_l_black_red_L
    {m : map K V} {p r g : Nat} {cg : color_type} {vP vr vg : Option (K × V)}
    {rl rr sg : tree K V} {q : List (frame K V)}
    (h : Rep m (fill ((.L g cg vg sg) :: q)
      (.node p black vP (.node r red vr rl rr) .nil))) :
    ∃ m2, map.set_parent_target m (some p) (some r) = some m2 ∧
      Rep m2 (fill ((.L g cg vg sg) :: q)
        (.node r black vr rl rr)) ∧ SameAux m m2 :=
  have hs := shaped_fill.1 h.shaped
  have c_p : m.mem p = some { color := black, val := vP, l := some r, r := none, parent := some g }
    := hs.2.1
  have c_r : m.mem r = some { color := red, val := vr, l := rl.top, r := rr.top, parent := some p }
    := hs.2.2.1.1
  have c_g : m.mem g = some { color := cg, val := vg, l := some p, r := sg.top, parent := ptop q }
    := hs.1.1
  have hB : (List.flatten [(pbefore q).map Prod.fst, rl.addrs, [r], rr.addrs, [p], [g], sg.addrs,
    (pafter q).map Prod.fst]).Nodup := by
    have e : (fill ((.L g cg vg sg) :: q) (.node p black vP (.node r red vr rl rr) .nil)).addrs =
        List.flatten [(pbefore q).map Prod.fst, rl.addrs, [r], rr.addrs, [p], [g], sg.addrs,
          (pafter q).map Prod.fst] := by
      rw [fill_addrs]
      simp [pbefore, pafter, pbefore_append, pafter_append, tree.addrs]
    exact e ▸ h.nodup
  Exists.elim (spt_l_black_red_L_cells c_p c_r c_g (blocks_ne_at hB 4 5 rfl rfl rfl) (blocks_ne_at
    hB 2 5 rfl rfl rfl) (blocks_ne_at hB 4 2 rfl rfl rfl) (blocks_ne_at hB 5 2 rfl rfl rfl)) fun m2
    H =>
  have fr := H.2.2.2.2.1
  have a_rl : ∀ b ∈ rl.addrs, m2.mem b = m.mem b :=
    region_agree hB [5, 2] [g, r] 1 rfl rfl rfl fr
  have a_rr : ∀ b ∈ rr.addrs, m2.mem b = m.mem b :=
    region_agree hB [5, 2] [g, r] 3 rfl rfl rfl fr
  have a_sg : ∀ b ∈ sg.addrs, m2.mem b = m.mem b :=
    region_agree hB [5, 2] [g, r] 6 rfl rfl rfl fr
  have a_q : ∀ b ∈ paddrs q, m2.mem b = m.mem b :=
    paddrs_agree (region_agree hB [5, 2] [g, r] 0 rfl rfl rfl fr)
      (region_agree hB [5, 2] [g, r] 7 rfl rfl rfl fr)
  have hroot : m2._root = (fill ((.L g cg vg sg) :: q) (.node r black vr rl rr)).top := by
    rw [H.2.2.2.2.2.1]
    refine h.root.trans ?_
    simp only [fill_L, fill_R, fill_append]
    exact fill_top_congr rfl
  have hpath : ShapedPath m2.mem ((.L g cg vg sg) :: q) (some r) :=
    ⟨H.2.2.2.1, Shaped.agree hs.1.2.1 a_sg, ShapedPath.agree_path hs.1.2.2 a_q⟩
  have htree : Shaped m2.mem (some g) (.node r black vr rl rr) :=
    ⟨H.2.2.1, Shaped.agree hs.2.2.1.2.1 a_rl, Shaped.agree hs.2.2.1.2.2 a_rr⟩
  ⟨m2, H.1, h.of_sub (fill_sublist _ (by simp)) H.2.2.2.2.2.2.1 hroot (shaped_fill.2 ⟨hpath,
    htree⟩), ⟨H.2.2.2.2.2.2.1, H.2.2.2.2.2.2.2.1, H.2.2.2.2.2.2.2.2⟩⟩

/-- The cells after `set_parent_target`, case `leaf_red_R`. -/
theorem spt_leaf_red_R_cells {m : map K V} {p g : Nat}
    {cg : color_type} {vP vg : Option (K × V)} {q1 q2 : ptr}
    (c_p : m.mem p = some { color := red, val := vP, l := none, r := none, parent := some g })
    (c_g : m.mem g = some { color := cg, val := vg, l := q1, r := some p, parent := q2 })
    (d_p_g : p ≠ g)
    (t_q1_p : q1 ≠ some p)
    (u_q1_p : some p ≠ q1) :
    ∃ m2, map.set_parent_target m (some p) none = some m2 ∧
      m2.mem p = some { color := red, val := vP, l := none, r := none, parent := some g } ∧
      m2.mem g = some { color := cg, val := vg, l := q1, r := none, parent := q2 } ∧
      (∀ b, b ∉ [g] → m2.mem b = m.mem b) ∧
      m2._root = m._root ∧
      m2.brk = m.brk ∧
      m2._sz = m._sz ∧
      m2._cmp_k = m._cmp_k :=
  have hr0 : m._root = m._root := rfl
  Exists.elim (set_r_step (m := m) c_g none) fun m1 S1 =>
  have w1 : m1.mem g = some { color := cg, val := vg, l := q1, r := none, parent := q2 } := S1.2.1
  have hop : map.set_parent_target m (some p) none = some m1 := by
    simp only [map.set_parent_target, map.set_parent_target_fix, isOnLeft,
      (get_parent_eq (m := m) c_p : get_parent m (some p) = some (some g)),
      (get_l_eq (m := m) c_g : get_l m (some g) = some q1), t_q1_p, u_q1_p,
      (get_parent_eq (m := m) c_p : get_parent m (some p) = some (some g)), S1.1,
      (get_color_eq (m := m1) ((S1.2.2.1 p d_p_g).trans c_p) : get_color m1 (some p) = some red),
      bind_eq_ub, pure_eq_some, ub_bind_some, ne_eq, Option.some.injEq, not_false_eq_true,
      not_true_eq_false, and_self, and_true, true_and, and_false, false_and, if_true, if_false,
      ite_true, ite_false, reduceCtorEq, reduceIte, ite_not, not_not, Bool.not_eq_true,
      decide_eq_true_eq, decide_eq_false_iff_not, decide_True, decide_False, Bool.false_eq_true,
      eq_self_iff_true, Option.isSome_some, Option.isSome_none]
  have h_g : ∀ b, b ∉ [g] → b ≠ g := fun b hb e => hb (e ▸ List.Mem.head _)
  ⟨m1, hop, ((S1.2.2.1 p d_p_g).trans c_p), w1, (fun b hb => (S1.2.2.1 b (h_g b hb))),
    (S1.2.2.2.2.1.trans hr0), S1.2.2.2.1, S1.2.2.2.2.2.1, S1.2.2.2.2.2.2⟩

/-- Member `set_parent_target` with a null target at a red right child without children. -/
theorem spt_leaf_red_R
    {m : map K V} {p g : Nat} {cg : color_type} {vP vg : Option (K × V)} {sg : tree K V}
    {q : List (frame K V)}
    (h : Rep m (fill ((.R g cg vg sg) :: q)
      (.node p red vP .nil .nil))) :
    ∃ m2, map.set_parent_target m (some p) none = some m2 ∧
      Rep m2 (fill ((.R g cg vg sg) :: q)
        .nil) ∧ SameAux m m2 :=
  have hs := shaped_fill.1 h.shaped
  have c_p : m.mem p = some { color := red, val := vP, l := none, r := none, parent := some g } :=
    hs.2.1
  have c_g : m.mem g = some { color := cg, val := vg, l := sg.top, r := some p, parent := ptop q }
    := hs.1.1
  have hB : (List.flatten [(pbefore q).map Prod.fst, sg.addrs, [g], [p], (pafter q).map
    Prod.fst]).Nodup := by
    have e : (fill ((.R g cg vg sg) :: q) (.node p red vP .nil .nil)).addrs =
        List.flatten [(pbefore q).map Prod.fst, sg.addrs, [g], [p], (pafter q).map Prod.fst] := by
      rw [fill_addrs]
      simp [pbefore, pafter, pbefore_append, pafter_append, tree.addrs]
    exact e ▸ h.nodup
  Exists.elim (spt_leaf_red_R_cells c_p c_g (blocks_ne_at hB 3 2 rfl rfl rfl)
    (tree.top_ne_of_not_mem (blocks_not_mem_at hB 3 1 rfl rfl rfl)) (tree.ne_top_of_not_mem
    (blocks_not_mem_at hB 3 1 rfl rfl rfl))) fun m2 H =>
  have fr := H.2.2.2.1
  have a_sg : ∀ b ∈ sg.addrs, m2.mem b = m.mem b :=
    region_agree hB [2] [g] 1 rfl rfl rfl fr
  have a_q : ∀ b ∈ paddrs q, m2.mem b = m.mem b :=
    paddrs_agree (region_agree hB [2] [g] 0 rfl rfl rfl fr)
      (region_agree hB [2] [g] 4 rfl rfl rfl fr)
  have hroot : m2._root = (fill ((.R g cg vg sg) :: q) .nil).top := by
    rw [H.2.2.2.2.1]
    refine h.root.trans ?_
    simp only [fill_L, fill_R, fill_append]
    exact fill_top_congr rfl
  have hpath : ShapedPath m2.mem ((.R g cg vg sg) :: q) none :=
    ⟨H.2.2.1, Shaped.agree hs.1.2.1 a_sg, ShapedPath.agree_path hs.1.2.2 a_q⟩
  have htree : Shaped m2.mem (some g) .nil :=
    trivial
  ⟨m2, H.1, h.of_sub (fill_sublist _ (by simp)) H.2.2.2.2.2.1 hroot (shaped_fill.2 ⟨hpath, htree⟩),
    ⟨H.2.2.2.2.2.1, H.2.2.2.2.2.2.1, H.2.2.2.2.2.2.2⟩⟩

/-- The cells after `set_parent_target`, case `leaf_black_R`. -/
theorem spt_leaf_black_R_cells {m : map K V} {p g : Nat}
    {cg : color_type} {vP vg : Option (K × V)} {q1 q2 : ptr}
    (c_p : m.mem p = some { color := black, val := vP, l := none, r := none, parent := some g })
    (c_g : m.mem g = some { color := cg, val := vg, l := q1, r := some p, parent := q2 })
    (d_p_g : p ≠ g)
    (t_q1_p : q1 ≠ some p)
    (u_q1_p : some p ≠ q1) :
    ∃ m2, map.set_parent_target m (some p) none = map.fixDoubleBlack (2 * m2.brk + 2) m2 none (some g) q1 ∧
      m2.mem p = some { color := black, val := vP, l := none, r := none, parent := some g } ∧
      m2.mem g = some { color := cg, val := vg, l := q1, r := none, parent := q2 } ∧
      (∀ b, b ∉ [g] → m2.mem b = m.mem b) ∧
      m2._root = m._root ∧
      m2.brk = m.brk ∧
      m2._sz = m._sz ∧
      m2._cmp_k = m._cmp_k :=
  have hr0 : m._root = m._root := rfl
  Exists.elim (set_r_step (m := m) c_g none) fun m1 S1 =>
  have w1 : m1.mem g = some { color := cg, val := vg, l := q1, r := none, parent := q2 } := S1.2.1
  have hop : map.set_parent_target m (some p) none = map.fixDoubleBlack (2 * m1.brk + 2) m1 none
    (some g) q1 := by
    simp only [map.set_parent_target, map.set_parent_target_fix, isOnLeft,
      (get_parent_eq (m := m) c_p : get_parent m (some p) = some (some g)),
      (get_l_eq (m := m) c_g : get_l m (some g) = some q1), t_q1_p, u_q1_p,
      (get_parent_eq (m := m) c_p : get_parent m (some p) = some (some g)), S1.1,
      (get_color_eq (m := m1) ((S1.2.2.1 p d_p_g).trans c_p) : get_color m1 (some p) = some black),
      (get_parent_eq (m := m1) ((S1.2.2.1 p d_p_g).trans c_p) : get_parent m1 (some p) = some (some
        g)),
      (get_r_eq (m := m1) w1 : get_r m1 (some g) = some none),
      (get_l_eq (m := m1) w1 : get_l m1 (some g) = some q1), bind_eq_ub, pure_eq_some,
      ub_bind_some, ne_eq, Option.some.injEq, not_false_eq_true, not_true_eq_false, and_self,
      and_true, true_and, and_false, false_and, if_true, if_false, ite_true, ite_false,
      reduceCtorEq, reduceIte, ite_not, not_not, Bool.not_eq_true, decide_eq_true_eq,
      decide_eq_false_iff_not, decide_True, decide_False, Bool.false_eq_true, eq_self_iff_true,
      Option.isSome_some, Option.isSome_none]
  have h_g : ∀ b, b ∉ [g] → b ≠ g := fun b hb e => hb (e ▸ List.Mem.head _)
  ⟨m1, hop, ((S1.2.2.1 p d_p_g).trans c_p), w1, (fun b hb => (S1.2.2.1 b (h_g b hb))),
    (S1.2.2.2.2.1.trans hr0), S1.2.2.2.1, S1.2.2.2.2.2.1, S1.2.2.2.2.2.2⟩

/-- Member `set_parent_target` with a null target at a black right child without children: what is left is the call of `fixDoubleBlack`. -/
theorem spt_leaf_black_R
    {m : map K V} {p g : Nat} {cg : color_type} {vP vg : Option (K × V)} {sg : tree K V}
    {q : List (frame K V)}
    (h : Rep m (fill ((.R g cg vg sg) :: q)
      (.node p black vP .nil .nil))) :
    ∃ m2, map.set_parent_target m (some p) none = map.fixDoubleBlack (2 * m2.brk + 2) m2 none (some g) sg.top ∧
      Rep m2 (fill ((.R g cg vg sg) :: q)
        .nil) ∧ SameAux m m2 :=
  have hs := shaped_fill.1 h.shaped
  have c_p : m.mem p = some { color := black, val := vP, l := none, r := none, parent := some g }
    := hs.2.1
  have c_g : m.mem g = some { color := cg, val := vg, l := sg.top, r := some p, parent := ptop q }
    := hs.1.1
  have hB : (List.flatten [(pbefore q).map Prod.fst, sg.addrs, [g], [p], (pafter q).map
    Prod.fst]).Nodup := by
    have e : (fill ((.R g cg vg sg) :: q) (.node p black vP .nil .nil)).addrs =
        List.flatten [(pbefore q).map Prod.fst, sg.addrs, [g], [p], (pafter q).map Prod.fst] := by
      rw [fill_addrs]
      simp [pbefore, pafter, pbefore_append, pafter_append, tree.addrs]
    exact e ▸ h.nodup
  Exists.elim (spt_leaf_black_R_cells c_p c_g (blocks_ne_at hB 3 2 rfl rfl rfl)
    (tree.top_ne_of_not_mem (blocks_not_mem_at hB 3 1 rfl rfl rfl)) (tree.ne_top_of_not_mem
    (blocks_not_mem_at hB 3 1 rfl rfl rfl))) fun m2 H =>
  have fr := H.2.2.2.1
  have a_sg : ∀ b ∈ sg.addrs, m2.mem b = m.mem b :=
    region_agree hB [2] [g] 1 rfl rfl rfl fr
  have a_q : ∀ b ∈ paddrs q, m2.mem b = m.mem b :=
    paddrs_agree (region_agree hB [2] [g] 0 rfl rfl rfl fr)
      (region_agree hB [2] [g] 4 rfl rfl rfl fr)
  have hroot : m2._root = (fill ((.R g cg vg sg) :: q) .nil).top := by
    rw [H.2.2.2.2.1]
    refine h.root.trans ?_
    simp only [fill_L, fill_R, fill_append]
    exact fill_top_congr rfl
  have hpath : ShapedPath m2.mem ((.R g cg vg sg) :: q) none :=
    ⟨H.2.2.1, Shaped.agree hs.1.2.1 a_sg, ShapedPath.agree_path hs.1.2.2 a_q⟩
  have htree : Shaped m2.mem (some g) .nil :=
    trivial
  ⟨m2, H.1, h.of_sub (fill_sublist _ (by simp)) H.2.2.2.2.2.1 hroot (shaped_fill.2 ⟨hpath, htree⟩),
    ⟨H.2.2.2.2.2.1, H.2.2.2.2.2.2.1, H.2.2.2.2.2.2.2⟩⟩

/-- The cells after `set_parent_target`, case `r_red_R`. -/
theorem spt_r_red_R_cells {m : map K V} {p r g : Nat}
    {cr cg : color_type} {vP vr vg : Option (K × V)} {q1 q2 q3 q4 : ptr}
    (c_p : m.mem p = some { color := red, val := vP, l := none, r := some r, parent := some g })
    (c_r : m.mem r = some { color := cr, val := vr, l := q1, r := q2, parent := some p })
    (c_g : m.mem g = some { color := cg, val := vg, l := q3, r := some p, parent := q4 })
    (d_p_g : p ≠ g)
    (d_r_g : r ≠ g)
    (d_p_r : p ≠ r)
    (d_g_r : g ≠ r)
    (t_q3_p : q3 ≠ some p)
    (u_q3_p : some p ≠ q3) :
    ∃ m2, map.set_parent_target m (some p) (some r) = some m2 ∧
      m2.mem p = some { color := red, val := vP, l := none, r := some r, parent := some g } ∧
      m2.mem r = some { color := cr, val := vr, l := q1, r := q2, parent := some g } ∧
      m2.mem g = some { color := cg, val := vg, l := q3, r := some r, parent := q4 } ∧
      (∀ b, b ∉ [g, r] → m2.mem b = m.mem b) ∧
      m2._root = m._root ∧
      m2.brk = m.brk ∧
      m2._sz = m._sz ∧
      m2._cmp_k = m._cmp_k :=
  have hr0 : m._root = m._root := rfl
  Exists.elim (set_r_step (m := m) c_g (some r)) fun m1 S1 =>
  have w1 : m1.mem g = some { color := cg, val := vg, l := q3, r := some r, parent := q4 } := S1.2.1
  Exists.elim (set_parent_step (m := m1) ((S1.2.2.1 r d_r_g).trans c_r) (some g)) fun m2 S2 =>
  have w2 : m2.mem r = some { color := cr, val := vr, l := q1, r := q2, parent := some g } := S2.2.1
  have k2_p := (S2.2.2.1 p d_p_r).trans ((S1.2.2.1 p d_p_g).trans c_p)
  have hop : map.set_parent_target m (some p) (some r) = some m2 := by
    simp only [map.set_parent_target, map.set_parent_target_fix, isOnLeft,
      (get_parent_eq (m := m) c_p : get_parent m (some p) = some (some g)),
      (get_l_eq (m := m) c_g : get_l m (some g) = some q3), t_q3_p, u_q3_p,
      (get_parent_eq (m := m) c_p : get_parent m (some p) = some (some g)), S1.1,
      (get_parent_eq (m := m1) ((S1.2.2.1 p d_p_g).trans c_p) : get_parent m1 (some p) = some (some
        g)),
      S2.1, (get_color_eq (m := m2) k2_p : get_color m2 (some p) = some red), bind_eq_ub,
      pure_eq_some, ub_bind_some, ne_eq, Option.some.injEq, not_false_eq_true, not_true_eq_false,
      and_self, and_true, true_and, and_false, false_and, if_true, if_false, ite_true, ite_false,
      reduceCtorEq, reduceIte, ite_not, not_not, Bool.not_eq_true, decide_eq_true_eq,
      decide_eq_false_iff_not, decide_True, decide_False, Bool.false_eq_true, eq_self_iff_true,
      Option.isSome_some, Option.isSome_none]
  have h_g : ∀ b, b ∉ [g, r] → b ≠ g := fun b hb e => hb (e ▸ List.Mem.head _)
  have h_r : ∀ b, b ∉ [g, r] → b ≠ r := fun b hb e => hb (e ▸ List.Mem.tail _ (List.Mem.head _))
  ⟨m2, hop, k2_p, w2, ((S2.2.2.1 g d_g_r).trans w1), (fun b hb => ((S2.2.2.1 b (h_r b hb)).trans
    (S1.2.2.1 b (h_g b hb)))), (S2.2.2.2.2.1.trans (S1.2.2.2.2.1.trans hr0)), (S2.2.2.2.1.trans
    S1.2.2.2.1), (S2.2.2.2.2.2.1.trans S1.2.2.2.2.2.1), (S2.2.2.2.2.2.2.trans S1.2.2.2.2.2.2)⟩

/-- Member `set_parent_target` at a red right child whose only child is its right child. -/
theorem spt_r_red_R
    {m : map K V} {p r g : Nat} {cr cg : color_type} {vP vr vg : Option (K × V)}
    {rl rr sg : tree K V} {q : List (frame K V)}
    (h : Rep m (fill ((.R g cg vg sg) :: q)
      (.node p red vP .nil (.node r cr vr rl rr)))) :
    ∃ m2, map.set_parent_target m (some p) (some r) = some m2 ∧
      Rep m2 (fill ((.R g cg vg sg) :: q)
        (.node r cr vr rl rr)) ∧ SameAux m m2 :=
  have hs := shaped_fill.1 h.shaped
  have c_p : m.mem p = some { color := red, val := vP, l := none, r := some r, parent := some g }
    := hs.2.1
  have c_r : m.mem r = some { color := cr, val := vr, l := rl.top, r := rr.top, parent := some p }
    := hs.2.2.2.1
  have c_g : m.mem g = some { color := cg, val := vg, l := sg.top, r := some p, parent := ptop q }
    := hs.1.1
  have hB : (List.flatten [(pbefore q).map Prod.fst, sg.addrs, [g], [p], rl.addrs, [r], rr.addrs,
    (pafter q).map Prod.fst]).Nodup := by
    have e : (fill ((.R g cg vg sg) :: q) (.node p red vP .nil (.node r cr vr rl rr))).addrs =
        List.flatten [(pbefore q).map Prod.fst, sg.addrs, [g], [p], rl.addrs, [r], rr.addrs,
          (pafter q).map Prod.fst] := by
      rw [fill_addrs]
      simp [pbefore, pafter, pbefore_append, pafter_append, tree.addrs]
    exact e ▸ h.nodup
  Exists.elim (spt_r_red_R_cells c_p c_r c_g (blocks_ne_at hB 3 2 rfl rfl rfl) (blocks_ne_at hB 5 2
    rfl rfl rfl) (blocks_ne_at hB 3 5 rfl rfl rfl) (blocks_ne_at hB 2 5 rfl rfl rfl)
    (tree.top_ne_of_not_mem (blocks_not_mem_at hB 3 1 rfl rfl rfl)) (tree.ne_top_of_not_mem
    (blocks_not_mem_at hB 3 1 rfl rfl rfl))) fun m2 H =>
  have fr := H.2.2.2.2.1
  have a_rl : ∀ b ∈ rl.addrs, m2.mem b = m.mem b :=
    region_agree hB [2, 5] [g, r] 4 rfl rfl rfl fr
  have a_rr : ∀ b ∈ rr.addrs, m2.mem b = m.mem b :=
    region_agree hB [2, 5] [g, r] 6 rfl rfl rfl fr
  have a_sg : ∀ b ∈ sg.addrs, m2.mem b = m.mem b :=
    region_agree hB [2, 5] [g, r] 1 rfl rfl rfl fr
  have a_q : ∀ b ∈ paddrs q, m2.mem b = m.mem b :=
    paddrs_agree (region_agree hB [2, 5] [g, r] 0 rfl rfl rfl fr)
      (region_agree hB [2, 5] [g, r] 7 rfl rfl rfl fr)
  have hroot : m2._root = (fill ((.R g cg vg sg) :: q) (.node r cr vr rl rr)).top := by
    rw [H.2.2.2.2.2.1]
    refine h.root.trans ?_
    simp only [fill_L, fill_R, fill_append]
    exact fill_top_congr rfl
  have hpath : ShapedPath m2.mem ((.R g cg vg sg) :: q) (some r) :=
    ⟨H.2.2.2.1, Shaped.agree hs.1.2.1 a_sg, ShapedPath.agree_path hs.1.2.2 a_q⟩
  have htree : Shaped m2.mem (some g) (.node r cr vr rl rr) :=
    ⟨H.2.2.1, Shaped.agree hs.2.2.2.2.1 a_rl, Shaped.agree hs.2.2.2.2.2 a_rr⟩
  ⟨m2, H.1, h.of_sub (fill_sublist _ (by simp)) H.2.2.2.2.2.2.1 hroot (shaped_fill.2 ⟨hpath,
    htree⟩), ⟨H.2.2.2.2.2.2.1, H.2.2.2.2.2.2.2.1, H.2.2.2.2.2.2.2.2⟩⟩

/-- The cells after `set_parent_target`, case `r_black_black_R`. -/
theorem spt_r_black_black_R_cells {m : map K V} {p r g : Nat}
    {cg : color_type} {vP vr vg : Option (K × V)} {q1 q2 q3 q4 : ptr}
    (c_p : m.mem p = some { color := black, val := vP, l := none, r := some r, parent := some g })
    (c_r : m.mem r = some { color := black, val := vr, l := q1, r := q2, parent := some p })
    (c_g : m.mem g = some { color := cg, val := vg, l := q3, r := some p, parent := q4 })
    (d_p_g : p ≠ g)
    (d_r_g : r ≠ g)
    (d_p_r : p ≠ r)
    (d_g_r : g ≠ r)
    (t_q3_p : q3 ≠ some p)
    (u_q3_p : some p ≠ q3) :
    ∃ m2, map.set_parent_target m (some p) (some r) = map.fixDoubleBlack (2 * m2.brk + 2) m2 (some r) (some g) q3 ∧
      m2.mem p = some { color := black, val := vP, l := none, r := some r, parent := some g } ∧
      m2.mem r = some { color := black, val := vr, l := q1, r := q2, parent := some g } ∧
      m2.mem g = some { color := cg, val := vg, l := q3, r := some r, parent := q4 } ∧
      (∀ b, b ∉ [g, r] → m2.mem b = m.mem b) ∧
      m2._root = m._root ∧
      m2.brk = m.brk ∧
      m2._sz = m._sz ∧
      m2._cmp_k = m._cmp_k :=
  have hr0 : m._root = m._root := rfl
  Exists.elim (set_r_step (m := m) c_g (some r)) fun m1 S1 =>
  have w1 : m1.mem g = some { color := cg, val := vg, l := q3, r := some r, parent := q4 } := S1.2.1
  Exists.elim (set_parent_step (m := m1) ((S1.2.2.1 r d_r_g).trans c_r) (some g)) fun m2 S2 =>
  have w2 : m2.mem r = some { color := black, val := vr, l := q1, r := q2, parent := some g } :=
    S2.2.1
  have k2_p := (S2.2.2.1 p d_p_r).trans ((S1.2.2.1 p d_p_g).trans c_p)
  have hop : map.set_parent_target m (some p) (some r) = map.fixDoubleBlack (2 * m2.brk + 2) m2
    (some r) (some g) q3 := by
    simp only [map.set_parent_target, map.set_parent_target_fix, isOnLeft,
      (get_parent_eq (m := m) c_p : get_parent m (some p) = some (some g)),
      (get_l_eq (m := m) c_g : get_l m (some g) = some q3), t_q3_p, u_q3_p,
      (get_parent_eq (m := m) c_p : get_parent m (some p) = some (some g)), S1.1,
      (get_parent_eq (m := m1) ((S1.2.2.1 p d_p_g).trans c_p) : get_parent m1 (some p) = some (some
        g)),
      S2.1, (get_color_eq (m := m2) k2_p : get_color m2 (some p) = some black),
      (get_color_eq (m := m2) w2 : get_color m2 (some r) = some black),
      (get_parent_eq (m := m2) w2 : get_parent m2 (some r) = some (some g)),
      (get_parent_eq (m := m2) k2_p : get_parent m2 (some p) = some (some g)),
      (get_r_eq (m := m2) ((S2.2.2.1 g d_g_r).trans w1) : get_r m2 (some g) = some (some r)),
      (get_l_eq (m := m2) ((S2.2.2.1 g d_g_r).trans w1) : get_l m2 (some g) = some q3),
      bind_eq_ub, pure_eq_some, ub_bind_some, ne_eq, Option.some.injEq, not_false_eq_true,
      not_true_eq_false, and_self, and_true, true_and, and_false, false_and, if_true, if_false,
      ite_true, ite_false, reduceCtorEq, reduceIte, ite_not, not_not, Bool.not_eq_true,
      decide_eq_true_eq, decide_eq_false_iff_not, decide_True, decide_False, Bool.false_eq_true,
      eq_self_iff_true, Option.isSome_some, Option.isSome_none]
  have h_g : ∀ b, b ∉ [g, r] → b ≠ g := fun b hb e => hb (e ▸ List.Mem.head _)
  have h_r : ∀ b, b ∉ [g, r] → b ≠ r := fun b hb e => hb (e ▸ List.Mem.tail _ (List.Mem.head _))
  ⟨m2, hop, k2_p, w2, ((S2.2.2.1 g d_g_r).trans w1), (fun b hb => ((S2.2.2.1 b (h_r b hb)).trans
    (S1.2.2.1 b (h_g b hb)))), (S2.2.2.2.2.1.trans (S1.2.2.2.2.1.trans hr0)), (S2.2.2.2.1.trans
    S1.2.2.2.1), (S2.2.2.2.2.2.1.trans S1.2.2.2.2.2.1), (S2.2.2.2.2.2.2.trans S1.2.2.2.2.2.2)⟩

/-- Member `set_parent_target` at a black right child whose only child, the right one, is black: what is left is the call of `fixDoubleBlack`. -/
theorem spt_r_black_black_R
    {m : map K V} {p r g : Nat} {cg : color_type} {vP vr vg : Option (K × V)}
    {rl rr sg : tree K V} {q : List (frame K V)}
    (h : Rep m (fill ((.R g cg vg sg) :: q)
      (.node p black vP .nil (.node r black vr rl rr)))) :
    ∃ m2, map.set_parent_target m (some p) (some r) = map.fixDoubleBlack (2 * m2.brk + 2) m2 (some r) (some g) sg.top ∧
      Rep m2 (fill ((.R g cg vg sg) :: q)
        (.node r black vr rl rr)) ∧ SameAux m m2 :=
  have hs := shaped_fill.1 h.shaped
  have c_p : m.mem p = some { color := black, val := vP, l := none, r := some r, parent := some g }
    := hs.2.1
  have c_r : m.mem r = some { color := black, val := vr, l := rl.top, r := rr.top, parent := some p
    } := hs.2.2.2.1
  have c_g : m.mem g = some { color := cg, val := vg, l := sg.top, r := some p, parent := ptop q }
    := hs.1.1
  have hB : (List.flatten [(pbefore q).map Prod.fst, sg.addrs, [g], [p], rl.addrs, [r], rr.addrs,
    (pafter q).map Prod.fst]).Nodup := by
    have e : (fill ((.R g cg vg sg) :: q) (.node p black vP .nil (.node r black vr rl rr))).addrs =
        List.flatten [(pbefore q).map Prod.fst, sg.addrs, [g], [p], rl.addrs, [r], rr.addrs,
          (pafter q).map Prod.fst] := by
      rw [fill_addrs]
      simp [pbefore, pafter, pbefore_append, pafter_append, tree.addrs]
    exact e ▸ h.nodup
  Exists.elim (spt_r_black_black_R_cells c_p c_r c_g (blocks_ne_at hB 3 2 rfl rfl rfl)
    (blocks_ne_at hB 5 2 rfl rfl rfl) (blocks_ne_at hB 3 5 rfl rfl rfl) (blocks_ne_at hB 2 5 rfl
    rfl rfl) (tree.top_ne_of_not_mem (blocks_not_mem_at hB 3 1 rfl rfl rfl))
    (tree.ne_top_of_not_mem (blocks_not_mem_at hB 3 1 rfl rfl rfl))) fun m2 H =>
  have fr := H.2.2.2.2.1
  have a_rl : ∀ b ∈ rl.addrs, m2.mem b = m.mem b :=
    region_agree hB [2, 5] [g, r] 4 rfl rfl rfl fr
  have a_rr : ∀ b ∈ rr.addrs, m2.mem b = m.mem b :=
    region_agree hB [2, 5] [g, r] 6 rfl rfl rfl fr
  have a_sg : ∀ b ∈ sg.addrs, m2.mem b = m.mem b :=
    region_agree hB [2, 5] [g, r] 1 rfl rfl rfl fr
  have a_q : ∀ b ∈ paddrs q, m2.mem b = m.mem b :=
    paddrs_agree (region_agree hB [2, 5] [g, r] 0 rfl rfl rfl fr)
      (region_agree hB [2, 5] [g, r] 7 rfl rfl rfl fr)
  have hroot : m2._root = (fill ((.R g cg vg sg) :: q) (.node r black vr rl rr)).top := by
    rw [H.2.2.2.2.2.1]
    refine h.root.trans ?_
    simp only [fill_L, fill_R, fill_append]
    exact fill_top_congr rfl
  have hpath : ShapedPath m2.mem ((.R g cg vg sg) :: q) (some r) :=
    ⟨H.2.2.2.1, Shaped.agree hs.1.2.1 a_sg, ShapedPath.agree_path hs.1.2.2 a_q⟩
  have htree : Shaped m2.mem (some g) (.node r black vr rl rr) :=
    ⟨H.2.2.1, Shaped.agree hs.2.2.2.2.1 a_rl, Shaped.agree hs.2.2.2.2.2 a_rr⟩
  ⟨m2, H.1, h.of_sub (fill_sublist _ (by simp)) H.2.2.2.2.2.2.1 hroot (shaped_fill.2 ⟨hpath,
    htree⟩), ⟨H.2.2.2.2.2.2.1, H.2.2.2.2.2.2.2.1, H.2.2.2.2.2.2.2.2⟩⟩

/-- The cells after `set_parent_target`, case `r_black_red_R`. -/
theorem spt_r_black_red_R_cells {m : map K V} {p r g : Nat}
    {cg : color_type} {vP vr vg : Option (K × V)} {q1 q2 q3 q4 : ptr}
    (c_p : m.mem p = some { color := black, val := vP, l := none, r := some r, parent := some g })
    (c_r : m.mem r = some { color := red, val := vr, l := q1, r := q2, parent := some p })
    (c_g : m.mem g = some { color := cg, val := vg, l := q3, r := some p, parent := q4 })
    (d_p_g : p ≠ g)
    (d_r_g : r ≠ g)
    (d_p_r : p ≠ r)
    (d_g_r : g ≠ r)
    (t_q3_p : q3 ≠ some p)
    (u_q3_p : some p ≠ q3) :
    ∃ m2, map.set_parent_target m (some p) (some r) = some m2 ∧
      m2.mem p = some { color := black, val := vP, l := none, r := some r, parent := some g } ∧
      m2.mem r = some { color := black, val := vr, l := q1, r := q2, parent := some g } ∧
      m2.mem g = some { color := cg, val := vg, l := q3, r := some r, parent := q4 } ∧
      (∀ b, b ∉ [g, r] → m2.mem b = m.mem b) ∧
      m2._root = m._root ∧
      m2.brk = m.brk ∧
      m2._sz = m._sz ∧
      m2._cmp_k = m._cmp_k :=
  have hr0 : m._root = m._root := rfl
  Exists.elim (set_r_step (m := m) c_g (some r)) fun m1 S1 =>
  have w1 : m1.mem g = some { color := cg, val := vg, l := q3, r := some r, parent := q4 } := S1.2.1
  Exists.elim (set_parent_step (m := m1) ((S1.2.2.1 r d_r_g).trans c_r) (some g)) fun m2 S2 =>
  have w2 : m2.mem r = some { color := red, val := vr, l := q1, r := q2, parent := some g } :=
    S2.2.1
  have k2_p := (S2.2.2.1 p d_p_r).trans ((S1.2.2.1 p d_p_g).trans c_p)
  Exists.elim (set_color_step (m := m2) w2 black) fun m3 S3 =>
  have w3 : m3.mem r = some { color := black, val := vr, l := q1, r := q2, parent := some g } :=
    S3.2.1
  have xr3 : m3._root = m._root := S3.2.2.2.2.1.trans (S2.2.2.2.2.1.trans (S1.2.2.2.2.1.trans hr0))
  have k3_g := (S3.2.2.1 g d_g_r).trans ((S2.2.2.1 g d_g_r).trans w1)
  have hop : map.set_parent_target m (some p) (some r) = some m3 := by
    simp only [map.set_parent_target, map.set_parent_target_fix, isOnLeft,
      (get_parent_eq (m := m) c_p : get_parent m (some p) = some (some g)),
      (get_l_eq (m := m) c_g : get_l m (some g) = some q3), t_q3_p, u_q3_p,
      (get_parent_eq (m := m) c_p : get_parent m (some p) = some (some g)), S1.1,
      (get_parent_eq (m := m1) ((S1.2.2.1 p d_p_g).trans c_p) : get_parent m1 (some p) = some (some
        g)),
      S2.1, (get_color_eq (m := m2) k2_p : get_color m2 (some p) = some black),
      (get_color_eq (m := m2) w2 : get_color m2 (some r) = some red), S3.1, bind_eq_ub,
      pure_eq_some, ub_bind_some, ne_eq, Option.some.injEq, not_false_eq_true, not_true_eq_false,
      and_self, and_true, true_and, and_false, false_and, if_true, if_false, ite_true, ite_false,
      reduceCtorEq, reduceIte, ite_not, not_not, Bool.not_eq_true, decide_eq_true_eq,
      decide_eq_false_iff_not, decide_True, decide_False, Bool.false_eq_true, eq_self_iff_true,
      Option.isSome_some, Option.isSome_none]
  have h_g : ∀ b, b ∉ [g, r] → b ≠ g := fun b hb e => hb (e ▸ List.Mem.head _)
  have h_r : ∀ b, b ∉ [g, r] → b ≠ r := fun b hb e => hb (e ▸ List.Mem.tail _ (List.Mem.head _))
  ⟨m3, hop, ((S3.2.2.1 p d_p_r).trans k2_p), w3, k3_g, (fun b hb => ((S3.2.2.1 b (h_r b hb)).trans
    ((S2.2.2.1 b (h_r b hb)).trans (S1.2.2.1 b (h_g b hb))))), xr3, (S3.2.2.2.1.trans
    (S2.2.2.2.1.trans S1.2.2.2.1)), (S3.2.2.2.2.2.1.trans (S2.2.2.2.2.2.1.trans S1.2.2.2.2.2.1)),
    (S3.2.2.2.2.2.2.trans (S2.2.2.2.2.2.2.trans S1.2.2.2.2.2.2))⟩

/-- Member `set_parent_target` at a black right child whose only child, the right one, is red: the child takes the place and becomes black. -/
theorem spt_r_black_red_R
    {m : map K V} {p r g : Nat} {cg : color_type} {vP vr vg : Option (K × V)}
    {rl rr sg : tree K V} {q : List (frame K V)}
    (h : Rep m (fill ((.R g cg vg sg) :: q)
      (.node p black vP .nil (.node r red vr rl rr)))) :
    ∃ m2, map.set_parent_target m (some p) (some r) = some m2 ∧
      Rep m2 (fill ((.R g cg vg sg) :: q)
        (.node r black vr rl rr)) ∧ SameAux m m2 :=
  have hs := shaped_fill.1 h.shaped
  have c_p : m.mem p = some { color := black, val := vP, l := none, r := some r, parent := some g }
    := hs.2.1
  have c_r : m.mem r = some { color := red, val := vr, l := rl.top, r := rr.top, parent := some p }
    := hs.2.2.2.1
  have c_g : m.mem g = some { color := cg, val := vg, l := sg.top, r := some p, parent := ptop q }
    := hs.1.1
  have hB : (List.flatten [(pbefore q).map Prod.fst, sg.addrs, [g], [p], rl.addrs, [r], rr.addrs,
    (pafter q).map Prod.fst]).Nodup := by
    have e : (fill ((.R g cg vg sg) :: q) (.node p black vP .nil (.node r red vr rl rr))).addrs =
        List.flatten [(pbefore q).map Prod.fst, sg.addrs, [g], [p], rl.addrs, [r], rr.addrs,
          (pafter q).map Prod.fst] := by
      rw [fill_addrs]
      simp [pbefore, pafter, pbefore_append, pafter_append, tree.addrs]
    exact e ▸ h.nodup
  Exists.elim (spt_r_black_red_R_cells c_p c_r c_g (blocks_ne_at hB 3 2 rfl rfl rfl) (blocks_ne_at
    hB 5 2 rfl rfl rfl) (blocks_ne_at hB 3 5 rfl rfl rfl) (blocks_ne_at hB 2 5 rfl rfl rfl)
    (tree.top_ne_of_not_mem (blocks_not_mem_at hB 3 1 rfl rfl rfl)) (tree.ne_top_of_not_mem
    (blocks_not_mem_at hB 3 1 rfl rfl rfl))) fun m2 H =>
  have fr := H.2.2.2.2.1
  have a_rl : ∀ b ∈ rl.addrs, m2.mem b = m.mem b :=
    region_agree hB [2, 5] [g, r] 4 rfl rfl rfl fr
  have a_rr : ∀ b ∈ rr.addrs, m2.mem b = m.mem b :=
    region_agree hB [2, 5] [g, r] 6 rfl rfl rfl fr
  have a_sg : ∀ b ∈ sg.addrs, m2.mem b = m.mem b :=
    region_agree hB [2, 5] [g, r] 1 rfl rfl rfl fr
  have a_q : ∀ b ∈ paddrs q, m2.mem b = m.mem b :=
    paddrs_agree (region_agree hB [2, 5] [g, r] 0 rfl rfl rfl fr)
      (region_agree hB [2, 5] [g, r] 7 rfl rfl rfl fr)
  have hroot : m2._root = (fill ((.R g cg vg sg) :: q) (.node r black vr rl rr)).top := by
    rw [H.2.2.2.2.2.1]
    refine h.root.trans ?_
    simp only [fill_L, fill_R, fill_append]
    exact fill_top_congr rfl
  have hpath : ShapedPath m2.mem ((.R g cg vg sg) :: q) (some r) :=
    ⟨H.2.2.2.1, Shaped.agree hs.1.2.1 a_sg, ShapedPath.agree_path hs.1.2.2 a_q⟩
  have htree : Shaped m2.mem (some g) (.node r black vr rl rr) :=
    ⟨H.2.2.1, Shaped.agree hs.2.2.2.2.1 a_rl, Shaped.agree hs.2.2.2.2.2 a_rr⟩
  ⟨m2, H.1, h.of_sub (fill_sublist _ (by simp)) H.2.2.2.2.2.2.1 hroot (shaped_fill.2 ⟨hpath,
    htree⟩), ⟨H.2.2.2.2.2.2.1, H.2.2.2.2.2.2.2.1, H.2.2.2.2.2.2.2.2⟩⟩

/-- The cells after `set_parent_target`, case `l_red_R`. -/
theorem spt_l_red_R_cells {m : map K V} {p r g : Nat}
    {cr cg : color_type} {vP vr vg : Option (K × V)} {q1 q2 q3 q4 : ptr}
    (c_p : m.mem p = some { color := red, val := vP, l := some r, r := none, parent := some g })
    (c_r : m.mem r = some { color := cr, val := vr, l := q1, r := q2, parent := some p })
    (c_g : m.mem g = some { color := cg, val := vg, l := q3, r := some p, parent := q4 })
    (d_p_g : p ≠ g)
    (d_r_g : r ≠ g)
    (d_p_r : p ≠ r)
    (d_g_r : g ≠ r)
    (t_q3_p : q3 ≠ some p)
    (u_q3_p : some p ≠ q3) :
    ∃ m2, map.set_parent_target m (some p) (some r) = some m2 ∧
      m2.mem p = some { color := red, val := vP, l := some r, r := none, parent := some g } ∧
      m2.mem r = some { color := cr, val := vr, l := q1, r := q2, parent := some g } ∧
      m2.mem g = some { color := cg, val := vg, l := q3, r := some r, parent := q4 } ∧
      (∀ b, b ∉ [g, r] → m2.mem b = m.mem b) ∧
      m2._root = m._root ∧
      m2.brk = m.brk ∧
      m2._sz = m._sz ∧
      m2._cmp_k = m._cmp_k :=
  have hr0 : m._root = m._root := rfl
  Exists.elim (set_r_step (m := m) c_g (some r)) fun m1 S1 =>
  have w1 : m1.mem g = some { color := cg, val := vg, l := q3, r := some r, parent := q4 } := S1.2.1
  Exists.elim (set_parent_step (m := m1) ((S1.2.2.1 r d_r_g).trans c_r) (some g)) fun m2 S2 =>
  have w2 : m2.mem r = some { color := cr, val := vr, l := q1, r := q2, parent := some g } := S2.2.1
  have k2_p := (S2.2.2.1 p d_p_r).trans ((S1.2.2.1 p d_p_g).trans c_p)
  have hop : map.set_parent_target m (some p) (some r) = some m2 := by
    simp only [map.set_parent_target, map.set_parent_target_fix, isOnLeft,
      (get_parent_eq (m := m) c_p : get_parent m (some p) = some (some g)),
      (get_l_eq (m := m) c_g : get_l m (some g) = some q3), t_q3_p, u_q3_p,
      (get_parent_eq (m := m) c_p : get_parent m (some p) = some (some g)), S1.1,
      (get_parent_eq (m := m1) ((S1.2.2.1 p d_p_g).trans c_p) : get_parent m1 (some p) = some (some
        g)),
      S2.1, (get_color_eq (m := m2) k2_p : get_color m2 (some p) = some red), bind_eq_ub,
      pure_eq_some, ub_bind_some, ne_eq, Option.some.injEq, not_false_eq_true, not_true_eq_false,
      and_self, and_true, true_and, and_false, false_and, if_true, if_false, ite_true, ite_false,
      reduceCtorEq, reduceIte, ite_not, not_not, Bool.not_eq_true, decide_eq_true_eq,
      decide_eq_false_iff_not, decide_True, decide_False, Bool.false_eq_true, eq_self_iff_true,
      Option.isSome_some, Option.isSome_none]
  have h_g : ∀ b, b ∉ [g, r] → b ≠ g := fun b hb e => hb (e ▸ List.Mem.head _)
  have h_r : ∀ b, b ∉ [g, r] → b ≠ r := fun b hb e => hb (e ▸ List.Mem.tail _ (List.Mem.head _))
  ⟨m2, hop, k2_p, w2, ((S2.2.2.1 g d_g_r).trans w1), (fun b hb => ((S2.2.2.1 b (h_r b hb)).trans
    (S1.2.2.1 b (h_g b hb)))), (S2.2.2.2.2.1.trans (S1.2.2.2.2.1.trans hr0)), (S2.2.2.2.1.trans
    S1.2.2.2.1), (S2.2.2.2.2.2.1.trans S1.2.2.2.2.2.1), (S2.2.2.2.2.2.2.trans S1.2.2.2.2.2.2)⟩

/-- Member `set_parent_target` at a red right child whose only child is its left child. -/
theorem spt_l_red_R
    {m : map K V} {p r g : Nat} {cr cg : color_type} {vP vr vg : Option (K × V)}
    {rl rr sg : tree K V} {q : List (frame K V)}
    (h : Rep m (fill ((.R g cg vg sg) :: q)
      (.node p red vP (.node r cr vr rl rr) .nil))) :
    ∃ m2, map.set_parent_target m (some p) (some r) = some m2 ∧
      Rep m2 (fill ((.R g cg vg sg) :: q)
        (.node r cr vr rl rr)) ∧ SameAux m m2 :=
  have hs := shaped_fill.1 h.shaped
  have c_p : m.mem p = some { color := red, val := vP, l := some r, r := none, parent := some g }
    := hs.2.1
  have c_r : m.mem r = some { color := cr, val := vr, l := rl.top, r := rr.top, parent := some p }
    := hs.2.2.1.1
  have c_g : m.mem g = some { color := cg, val := vg, l := sg.top, r := some p, parent := ptop q }
    := hs.1.1
  have hB : (List.flatten [(pbefore q).map Prod.fst, sg.addrs, [g], rl.addrs, [r], rr.addrs, [p],
    (pafter q).map Prod.fst]).Nodup := by
    have e : (fill ((.R g cg vg sg) :: q) (.node p red vP (.node r cr vr rl rr) .nil)).addrs =
        List.flatten [(pbefore q).map Prod.fst, sg.addrs, [g], rl.addrs, [r], rr.addrs, [p],
          (pafter q).map Prod.fst] := by
      rw [fill_addrs]
      simp [pbefore, pafter, pbefore_append, pafter_append, tree.addrs]
    exact e ▸ h.nodup
  Exists.elim (spt_l_red_R_cells c_p c_r c_g (blocks_ne_at hB 6 2 rfl rfl rfl) (blocks_ne_at hB 4 2
    rfl rfl rfl) (blocks_ne_at hB 6 4 rfl rfl rfl) (blocks_ne_at hB 2 4 rfl rfl rfl)
    (tree.top_ne_of_not_mem (blocks_not_mem_at hB 6 1 rfl rfl rfl)) (tree.ne_top_of_not_mem
    (blocks_not_mem_at hB 6 1 rfl rfl rfl))) fun m2 H =>
  have fr := H.2.2.2.2.1
  have a_rl : ∀ b ∈ rl.addrs, m2.mem b = m.mem b :=
    region_agree hB [2, 4] [g, r] 3 rfl rfl rfl fr
  have a_rr : ∀ b ∈ rr.addrs, m2.mem b = m.mem b :=
    region_agree hB [2, 4] [g, r] 5 rfl rfl rfl fr
  have a_sg : ∀ b ∈ sg.addrs, m2.mem b = m.mem b :=
    region_agree hB [2, 4] [g, r] 1 rfl rfl rfl fr
  have a_q : ∀ b ∈ paddrs q, m2.mem b = m.mem b :=
    paddrs_agree (region_agree hB [2, 4] [g, r] 0 rfl rfl rfl fr)
      (region_agree hB [2, 4] [g, r] 7 rfl rfl rfl fr)
  have hroot : m2._root = (fill ((.R g cg vg sg) :: q) (.node r cr vr rl rr)).top := by
    rw [H.2.2.2.2.2.1]
    refine h.root.trans ?_
    simp only [fill_L, fill_R, fill_append]
    exact fill_top_congr rfl
  have hpath : ShapedPath m2.mem ((.R g cg vg sg) :: q) (some r) :=
    ⟨H.2.2.2.1, Shaped.agree hs.1.2.1 a_sg, ShapedPath.agree_path hs.1.2.2 a_q⟩
  have htree : Shaped m2.mem (some g) (.node r cr vr rl rr) :=
    ⟨H.2.2.1, Shaped.agree hs.2.2.1.2.1 a_rl, Shaped.agree hs.2.2.1.2.2 a_rr⟩
  ⟨m2, H.1, h.of_sub (fill_sublist _ (by simp)) H.2.2.2.2.2.2.1 hroot (shaped_fill.2 ⟨hpath,
    htree⟩), ⟨H.2.2.2.2.2.2.1, H.2.2.2.2.2.2.2.1, H.2.2.2.2.2.2.2.2⟩⟩

/-- The cells after `set_parent_target`, case `l_black_black_R`. -/
theorem spt_l_black_black_R_cells {m : map K V} {p r g : Nat}
    {cg : color_type} {vP vr vg : Option (K × V)} {q1 q2 q3 q4 : ptr}
    (c_p : m.mem p = some { color := black, val := vP, l := some r, r := none, parent := some g })
    (c_r : m.mem r = some { color := black, val := vr, l := q1, r := q2, parent := some p })
    (c_g : m.mem g = some { color := cg, val := vg, l := q3, r := some p, parent := q4 })
    (d_p_g : p ≠ g)
    (d_r_g : r ≠ g)
    (d_p_r : p ≠ r)
    (d_g_r : g ≠ r)
    (t_q3_p : q3 ≠ some p)
    (u_q3_p : some p ≠ q3) :
    ∃ m2, map.set_parent_target m (some p) (some r) = map.fixDoubleBlack (2 * m2.brk + 2) m2 (some r) (some g) q3 ∧
      m2.mem p = some { color := black, val := vP, l := some r, r := none, parent := some g } ∧
      m2.mem r = some { color := black, val := vr, l := q1, r := q2, parent := some g } ∧
      m2.mem g = some { color := cg, val := vg, l := q3, r := some r, parent := q4 } ∧
      (∀ b, b ∉ [g, r] → m2.mem b = m.mem b) ∧
      m2._root = m._root ∧
      m2.brk = m.brk ∧
      m2._sz = m._sz ∧
      m2._cmp_k = m._cmp_k :=
  have hr0 : m._root = m._root := rfl
  Exists.elim (set_r_step (m := m) c_g (some r)) fun m1 S1 =>
  have w1 : m1.mem g = some { color := cg, val := vg, l := q3, r := some r, parent := q4 } := S1.2.1
  Exists.elim (set_parent_step (m := m1) ((S1.2.2.1 r d_r_g).trans c_r) (some g)) fun m2 S2 =>
  have w2 : m2.mem r = some { color := black, val := vr, l := q1, r := q2, parent := some g } :=
    S2.2.1
  have k2_p := (S2.2.2.1 p d_p_r).trans ((S1.2.2.1 p d_p_g).trans c_p)
  have hop : map.set_parent_target m (some p) (some r) = map.fixDoubleBlack (2 * m2.brk + 2) m2
    (some r) (some g) q3 := by
    simp only [map.set_parent_target, map.set_parent_target_fix, isOnLeft,
      (get_parent_eq (m := m) c_p : get_parent m (some p) = some (some g)),
      (get_l_eq (m := m) c_g : get_l m (some g) = some q3), t_q3_p, u_q3_p,
      (get_parent_eq (m := m) c_p : get_parent m (some p) = some (some g)), S1.1,
      (get_parent_eq (m := m1) ((S1.2.2.1 p d_p_g).trans c_p) : get_parent m1 (some p) = some (some
        g)),
      S2.1, (get_color_eq (m := m2) k2_p : get_color m2 (some p) = some black),
      (get_color_eq (m := m2) w2 : get_color m2 (some r) = some black),
      (get_parent_eq (m := m2) w2 : get_parent m2 (some r) = some (some g)),
      (get_parent_eq (m := m2) k2_p : get_parent m2 (some p) = some (some g)),
      (get_r_eq (m := m2) ((S2.2.2.1 g d_g_r).trans w1) : get_r m2 (some g) = some (some r)),
      (get_l_eq (m := m2) ((S2.2.2.1 g d_g_r).trans w1) : get_l m2 (some g) = some q3),
      bind_eq_ub, pure_eq_some, ub_bind_some, ne_eq, Option.some.injEq, not_false_eq_true,
      not_true_eq_false, and_self, and_true, true_and, and_false, false_and, if_true, if_false,
      ite_true, ite_false, reduceCtorEq, reduceIte, ite_not, not_not, Bool.not_eq_true,
      decide_eq_true_eq, decide_eq_false_iff_not, decide_True, decide_False, Bool.false_eq_true,
      eq_self_iff_true, Option.isSome_some, Option.isSome_none]
  have h_g : ∀ b, b ∉ [g, r] → b ≠ g := fun b hb e => hb (e ▸ List.Mem.head _)
  have h_r : ∀ b, b ∉ [g, r] → b ≠ r := fun b hb e => hb (e ▸ List.Mem.tail _ (List.Mem.head _))
  ⟨m2, hop, k2_p, w2, ((S2.2.2.1 g d_g_r).trans w1), (fun b hb => ((S2.2.2.1 b (h_r b hb)).trans
    (S1.2.2.1 b (h_g b hb)))), (S2.2.2.2.2.1.trans (S1.2.2.2.2.1.trans hr0)), (S2.2.2.2.1.trans
    S1.2.2.2.1), (S2.2.2.2.2.2.1.trans S1.2.2.2.2.2.1), (S2.2.2.2.2.2.2.trans S1.2.2.2.2.2.2)⟩

/-- Member `set_parent_target` at a black right child whose only child, the left one, is black: what is left is the call of `fixDoubleBlack`. -/
theorem spt_l_black_black_R
    {m : map K V} {p r g : Nat} {cg : color_type} {vP vr vg : Option (K × V)}
    {rl rr sg : tree K V} {q : List (frame K V)}
    (h : Rep m (fill ((.R g cg vg sg) :: q)
      (.node p black vP (.node r black vr rl rr) .nil))) :
    ∃ m2, map.set_parent_target m (some p) (some r) = map.fixDoubleBlack (2 * m2.brk + 2) m2 (some r) (some g) sg.top ∧
      Rep m2 (fill ((.R g cg vg sg) :: q)
        (.node r black vr rl rr)) ∧ SameAux m m2 :=
  have hs := shaped_fill.1 h.shaped
  have c_p : m.mem p = some { color := black, val := vP, l := some r, r := none, parent := some g }
    := hs.2.1
  have c_r : m.mem r = some { color := black, val := vr, l := rl.top, r := rr.top, parent := some p
    } := hs.2.2.1.1
  have c_g : m.mem g = some { color := cg, val := vg, l := sg.top, r := some p, parent := ptop q }
    := hs.1.1
  have hB : (List.flatten [(pbefore q).map Prod.fst, sg.addrs, [g], rl.addrs, [r], rr.addrs, [p],
    (pafter q).map Prod.fst]).Nodup := by
    have e : (fill ((.R g cg vg sg) :: q) (.node p black vP (.node r black vr rl rr) .nil)).addrs =
        List.flatten [(pbefore q).map Prod.fst, sg.addrs, [g], rl.addrs, [r], rr.addrs, [p],
          (pafter q).map Prod.fst] := by
      rw [fill_addrs]
      simp [pbefore, pafter, pbefore_append, pafter_append, tree.addrs]
    exact e ▸ h.nodup
  Exists.elim (spt_l_black_black_R_cells c_p c_r c_g (blocks_ne_at hB 6 2 rfl rfl rfl)
    (blocks_ne_at hB 4 2 rfl rfl rfl) (blocks_ne_at hB 6 4 rfl rfl rfl) (blocks_ne_at hB 2 4 rfl
    rfl rfl) (tree.top_ne_of_not_mem (blocks_not_mem_at hB 6 1 rfl rfl rfl))
    (tree.ne_top_of_not_mem (blocks_not_mem_at hB 6 1 rfl rfl rfl))) fun m2 H =>
  have fr := H.2.2.2.2.1
  have a_rl : ∀ b ∈ rl.addrs, m2.mem b = m.mem b :=
    region_agree hB [2, 4] [g, r] 3 rfl rfl rfl fr
  have a_rr : ∀ b ∈ rr.addrs, m2.mem b = m.mem b :=
    region_agree hB [2, 4] [g, r] 5 rfl rfl rfl fr
  have a_sg : ∀ b ∈ sg.addrs, m2.mem b = m.mem b :=
    region_agree hB [2, 4] [g, r] 1 rfl rfl rfl fr
  have a_q : ∀ b ∈ paddrs q, m2.mem b = m.mem b :=
    paddrs_agree (region_agree hB [2, 4] [g, r] 0 rfl rfl rfl fr)
      (region_agree hB [2, 4] [g, r] 7 rfl rfl rfl fr)
  have hroot : m2._root = (fill ((.R g cg vg sg) :: q) (.node r black vr rl rr)).top := by
    rw [H.2.2.2.2.2.1]
    refine h.root.trans ?_
    simp only [fill_L, fill_R, fill_append]
    exact fill_top_congr rfl
  have hpath : ShapedPath m2.mem ((.R g cg vg sg) :: q) (some r) :=
    ⟨H.2.2.2.1, Shaped.agree hs.1.2.1 a_sg, ShapedPath.agree_path hs.1.2.2 a_q⟩
  have htree : Shaped m2.mem (some g) (.node r black vr rl rr) :=
    ⟨H.2.2.1, Shaped.agree hs.2.2.1.2.1 a_rl, Shaped.agree hs.2.2.1.2.2 a_rr⟩
  ⟨m2, H.1, h.of_sub (fill_sublist _ (by simp)) H.2.2.2.2.2.2.1 hroot (shaped_fill.2 ⟨hpath,
    htree⟩), ⟨H.2.2.2.2.2.2.1, H.2.2.2.2.2.2.2.1, H.2.2.2.2.2.2.2.2⟩⟩

/-- The cells after `set_parent_target`, case `l_black_red_R`. -/
theorem spt_l_black_red_R_cells {m : map K V} {p r g : Nat}
    {cg : color_type} {vP vr vg : Option (K × V)} {q1 q2 q3 q4 : ptr}
    (c_p : m.mem p = some { color := black, val := vP, l := some r, r := none, parent := some g })
    (c_r : m.mem r = some { color := red, val := vr, l := q1, r := q2, parent := some p })
    (c_g : m.mem g = some { color := cg, val := vg, l := q3, r := some p, parent := q4 })
    (d_p_g : p ≠ g)
    (d_r_g : r ≠ g)
    (d_p_r : p ≠ r)
    (d_g_r : g ≠ r)
    (t_q3_p : q3 ≠ some p)
    (u_q3_p : some p ≠ q3) :
    ∃ m2, map.set_parent_target m (some p) (some r) = some m2 ∧
      m2.mem p = some { color := black, val := vP, l := some r, r := none, parent := some g } ∧
      m2.mem r = some { color := black, val := vr, l := q1, r := q2, parent := some g } ∧
      m2.mem g = some { color := cg, val := vg, l := q3, r := some r, parent := q4 } ∧
      (∀ b, b ∉ [g, r] → m2.mem b = m.mem b) ∧
      m2._root = m._root ∧
      m2.brk = m.brk ∧
      m2._sz = m._sz ∧
      m2._cmp_k = m._cmp_k :=
  have hr0 : m._root = m._root := rfl
  Exists.elim (set_r_step (m := m) c_g (some r)) fun m1 S1 =>
  have w1 : m1.mem g = some { color := cg, val := vg, l := q3, r := some r, parent := q4 } := S1.2.1
  Exists.elim (set_parent_step (m := m1) ((S1.2.2.1 r d_r_g).trans c_r) (some g)) fun m2 S2 =>
  have w2 : m2.mem r = some { color := red, val := vr, l := q1, r := q2, parent := some g } :=
    S2.2.1
  have k2_p := (S2.2.2.1 p d_p_r).trans ((S1.2.2.1 p d_p_g).trans c_p)
  Exists.elim (set_color_step (m := m2) w2 black) fun m3 S3 =>
  have w3 : m3.mem r = some { color := black, val := vr, l := q1, r := q2, parent := some g } :=
    S3.2.1
  have xr3 : m3._root = m._root := S3.2.2.2.2.1.trans (S2.2.2.2.2.1.trans (S1.2.2.2.2.1.trans hr0))
  have k3_g := (S3.2.2.1 g d_g_r).trans ((S2.2.2.1 g d_g_r).trans w1)
  have hop : map.set_parent_target m (some p) (some r) = some m3 := by
    simp only [map.set_parent_target, map.set_parent_target_fix, isOnLeft,
      (get_parent_eq (m := m) c_p : get_parent m (some p) = some (some g)),
      (get_l_eq (m := m) c_g : get_l m (some g) = some q3), t_q3_p, u_q3_p,
      (get_parent_eq (m := m) c_p : get_parent m (some p) = some (some g)), S1.1,
      (get_parent_eq (m := m1) ((S1.2.2.1 p d_p_g).trans c_p) : get_parent m1 (some p) = some (some
        g)),
      S2.1, (get_color_eq (m := m2) k2_p : get_color m2 (some p) = some black),
      (get_color_eq (m := m2) w2 : get_color m2 (some r) = some red), S3.1, bind_eq_ub,
      pure_eq_some, ub_bind_some, ne_eq, Option.some.injEq, not_false_eq_true, not_true_eq_false,
      and_self, and_true, true_and, and_false, false_and, if_true, if_false, ite_true, ite_false,
      reduceCtorEq, reduceIte, ite_not, not_not, Bool.not_eq_true, decide_eq_true_eq,
      decide_eq_false_iff_not, decide_True, decide_False, Bool.false_eq_true, eq_self_iff_true,
      Option.isSome_some, Option.isSome_none]
  have h_g : ∀ b, b ∉ [g, r] → b ≠ g := fun b hb e => hb (e ▸ List.Mem.head _)
  have h_r : ∀ b, b ∉ [g, r] → b ≠ r := fun b hb e => hb (e ▸ List.Mem.tail _ (List.Mem.head _))
  ⟨m3, hop, ((S3.2.2.1 p d_p_r).trans k2_p), w3, k3_g, (fun b hb => ((S3.2.2.1 b (h_r b hb)).trans
    ((S2.2.2.1 b (h_r b hb)).trans (S1.2.2.1 b (h_g b hb))))), xr3, (S3.2.2.2.1.trans
    (S2.2.2.2.1.trans S1.2.2.2.1)), (S3.2.2.2.2.2.1.trans (S2.2.2.2.2.2.1.trans S1.2.2.2.2.2.1)),
    (S3.2.2.2.2.2.2.trans (S2.2.2.2.2.2.2.trans S1.2.2.2.2.2.2))⟩

/-- Member `set_parent_target` at a black right child whose only child, the left one, is red: the child takes the place and becomes black. -/
theorem spt_l_black_red_R
    {m : map K V} {p r g : Nat} {cg : color_type} {vP vr vg : Option (K × V)}
    {rl rr sg : tree K V} {q : List (frame K V)}
    (h : Rep m (fill ((.R g cg vg sg) :: q)
      (.node p black vP (.node r red vr rl rr) .nil))) :
    ∃ m2, map.set_parent_target m (some p) (some r) = some m2 ∧
      Rep m2 (fill ((.R g cg vg sg) :: q)
        (.node r black vr rl rr)) ∧ SameAux m m2 :=
  have hs := shaped_fill.1 h.shaped
  have c_p : m.mem p = some { color := black, val := vP, l := some r, r := none, parent := some g }
    := hs.2.1
  have c_r : m.mem r = some { color := red, val := vr, l := rl.top, r := rr.top, parent := some p }
    := hs.2.2.1.1
  have c_g : m.mem g = some { color := cg, val := vg, l := sg.top, r := some p, parent := ptop q }
    := hs.1.1
  have hB : (List.flatten [(pbefore q).map Prod.fst, sg.addrs, [g], rl.addrs, [r], rr.addrs, [p],
    (pafter q).map Prod.fst]).Nodup := by
    have e : (fill ((.R g cg vg sg) :: q) (.node p black vP (.node r red vr rl rr) .nil)).addrs =
        List.flatten [(pbefore q).map Prod.fst, sg.addrs, [g], rl.addrs, [r], rr.addrs, [p],
          (pafter q).map Prod.fst] := by
      rw [fill_addrs]
      simp [pbefore, pafter, pbefore_append, pafter_append, tree.addrs]
    exact e ▸ h.nodup
  Exists.elim (spt_l_black_red_R_cells c_p c_r c_g (blocks_ne_at hB 6 2 rfl rfl rfl) (blocks_ne_at
    hB 4 2 rfl rfl rfl) (blocks_ne_at hB 6 4 rfl rfl rfl) (blocks_ne_at hB 2 4 rfl rfl rfl)
    (tree.top_ne_of_not_mem (blocks_not_mem_at hB 6 1 rfl rfl rfl)) (tree.ne_top_of_not_mem
    (blocks_not_mem_at hB 6 1 rfl rfl rfl))) fun m2 H =>
  have fr := H.2.2.2.2.1
  have a_rl : ∀ b ∈ rl.addrs, m2.mem b = m.mem b :=
    region_agree hB [2, 4] [g, r] 3 rfl rfl rfl fr
  have a_rr : ∀ b ∈ rr.addrs, m2.mem b = m.mem b :=
    region_agree hB [2, 4] [g, r] 5 rfl rfl rfl fr
  have a_sg : ∀ b ∈ sg.addrs, m2.mem b = m.mem b :=
    region_agree hB [2, 4] [g, r] 1 rfl rfl rfl fr
  have a_q : ∀ b ∈ paddrs q, m2.mem b = m.mem b :=
    paddrs_agree (region_agree hB [2, 4] [g, r] 0 rfl rfl rfl fr)
      (region_agree hB [2, 4] [g, r] 7 rfl rfl rfl fr)
  have hroot : m2._root = (fill ((.R g cg vg sg) :: q) (.node r black vr rl rr)).top := by
    rw [H.2.2.2.2.2.1]
    refine h.root.trans ?_
    simp only [fill_L, fill_R, fill_append]
    exact fill_top_congr rfl
  have hpath : ShapedPath m2.mem ((.R g cg vg sg) :: q) (some r) :=
    ⟨H.2.2.2.1, Shaped.agree hs.1.2.1 a_sg, ShapedPath.agree_path hs.1.2.2 a_q⟩
  have htree : Shaped m2.mem (some g) (.node r black vr rl rr) :=
    ⟨H.2.2.1, Shaped.agree hs.2.2.1.2.1 a_rl, Shaped.agree hs.2.2.1.2.2 a_rr⟩
  ⟨m2, H.1, h.of_sub (fill_sublist _ (by simp)) H.2.2.2.2.2.2.1 hroot (shaped_fill.2 ⟨hpath,
    htree⟩), ⟨H.2.2.2.2.2.2.1, H.2.2.2.2.2.2.2.1, H.2.2.2.2.2.2.2.2⟩⟩

end ft

namespace ft
open color_type
variable {K V : Type}

/-! ### Code that keeps the payloads -/

theorem Keep.refl_keep {m : map K V} : Keep m m := ⟨fun _ => Eq.refl _, Eq.refl _, Eq.refl _, Eq.refl _⟩

theorem Keep.trans_keep {m m2 m3 : map K V} (h : Keep m m2) (h2 : Keep m2 m3) : Keep m m3 :=
  ⟨fun b => (h2.1 b).trans (h.1 b), h2.2.1.trans h.2.1, h2.2.2.1.trans h.2.2.1,
    h2.2.2.2.trans h.2.2.2⟩

theorem Keep.root {m m2 : map K V} (h : Keep m m2) (r : ptr) : Keep m { m2 with _root := r } := h

theorem Keep.ite_keep {m a b : map K V} {c : Prop} [Decidable c] (h1 : Keep m a) (h2 : Keep m b) :
    Keep m (if c then a else b) := by
  split_ifs <;> assumption

theorem Keeps.some {m m2 : map K V} (h : Keep m m2) : Keeps m (some m2) :=
  ⟨fun m3 e => by cases e; exact h⟩

theorem Keeps.none {m : map K V} : Keeps m none := ⟨fun m3 e => by cases e⟩

theorem Keeps.bind {m : map K V} {x : Option (map K V)} {f : map K V → Option (map K V)}
    (hx : Keeps m x) (hf : ∀ m1, Keep m m1 → Keeps m (f m1)) : Keeps m (ub_bind x f) := by
  constructor
  intro m2 e
  obtain ⟨m1, e1, e2⟩ := ub_bind_eq_some.1 e
  exact (hf m1 (hx.out m1 e1)).out m2 e2

theorem Keeps.bind_val {m : map K V} {α : Type} {x : Option α} {f : α → Option (map K V)}
    (hf : ∀ a, Keeps m (f a)) : Keeps m (ub_bind x f) := by
  constructor
  intro m2 e
  obtain ⟨a, e1, e2⟩ := ub_bind_eq_some.1 e
  exact (hf a).out m2 e2

theorem Keeps.ite {m : map K V} {a b : Option (map K V)} {c : Prop} [Decidable c]
    (h1 : Keeps m a) (h2 : Keeps m b) : Keeps m (if c then a else b) := by
  split_ifs <;> assumption

theorem Keeps.store {m m1 : map K V} (h : Keep m m1) (p : ptr)
    (f : node_type K V → node_type K V) (hf : ∀ n, (f n).val = n.val) :
    Keeps m (store m1 p f) := by
  constructor
  intro m2 e
  cases p with
  | none =>
    have e2 : ft.store m1 Option.none f = Option.none := Eq.refl _
    rw [e2] at e
    cases e
  | some a =>
    cases hc : m1.mem a with
    | none =>
      have e2 : ft.store m1 (Option.some a) f = Option.none := by simp only [ft.store, hc]
      rw [e2] at e
      cases e
    | some n =>
      rw [store_eq hc] at e
      cases e
      refine Keep.trans_keep h ⟨?_, Eq.refl _, Eq.refl _, Eq.refl _⟩
      intro b
      by_cases hb : b = a
      · subst hb; simp [hc, hf]
      · simp [Function.update_noteq hb]

theorem Keeps.recolor {m m1 : map K V} (h : Keep m m1) (p : ptr) (c : color_type) :
    Keeps m (set_color m1 p c) := Keeps.store h p _ (fun _ => Eq.refl _)

theorem Keeps.set_l {m m1 : map K V} (h : Keep m m1) (p q : ptr) :
    Keeps m (set_l m1 p q) := Keeps.store h p _ (fun _ => Eq.refl _)

theorem Keeps.set_r {m m1 : map K V} (h : Keep m m1) (p q : ptr) :
    Keeps m (set_r m1 p q) := Keeps.store h p _ (fun _ => Eq.refl _)

theorem Keeps.set_parent {m m1 : map K V} (h : Keep m m1) (p q : ptr) :
    Keeps m (set_parent m1 p q) := Keeps.store h p _ (fun _ => Eq.refl _)

variable [DecidableEq K]

/-- Member `_l_rotate` changes no payload. -/
theorem Keeps.l_rotate {m m1 : map K V} (h : Keep m m1) (p : ptr) :
    Keeps m (map._l_rotate m1 p) := by
  simp only [map._l_rotate, bind_eq_ub, pure_eq_some]
  repeat' with_reducible first
    | refine Keeps.bind ?_ ?_
    | refine Keeps.bind_val ?_
    | refine Keeps.ite ?_ ?_
    | refine Keeps.some ?_
    | refine Keeps.recolor ?_ _ _
    | refine Keeps.set_l ?_ _ _
    | refine Keeps.set_r ?_ _ _
    | refine Keeps.set_parent ?_ _ _
    | assumption
    | refine Keep.root ?_ _
    | refine Keep.ite_keep ?_ ?_
    | intro _ _
    | intro _

/-- Member `_r_rotate` changes no payload. -/
theorem Keeps.r_rotate {m m1 : map K V} (h : Keep m m1) (p : ptr) :
    Keeps m (map._r_rotate m1 p) := by
  simp only [map._r_rotate, bind_eq_ub, pure_eq_some]
  repeat' with_reducible first
    | refine Keeps.bind ?_ ?_
    | refine Keeps.bind_val ?_
    | refine Keeps.ite ?_ ?_
    | refine Keeps.some ?_
    | refine Keeps.recolor ?_ _ _
    | refine Keeps.set_l ?_ _ _
    | refine Keeps.set_r ?_ _ _
    | refine Keeps.set_parent ?_ _ _
    | assumption
    | refine Keep.root ?_ _
    | refine Keep.ite_keep ?_ ?_
    | intro _ _
    | intro _

theorem Keeps.red_child {m m1 : map K V} (h : Keep m m1) (p s : ptr) :
    Keeps m (map.fixDoubleBlack_red_child m1 p s) := by
  simp only [map.fixDoubleBlack_red_child, bind_eq_ub, pure_eq_some]
  repeat' with_reducible first
    | refine Keeps.bind ?_ ?_
    | refine Keeps.bind_val ?_
    | refine Keeps.ite ?_ ?_
    | refine Keeps.some ?_
    | refine Keeps.recolor ?_ _ _
    | refine Keeps.l_rotate ?_ _
    | refine Keeps.r_rotate ?_ _
    | assumption
    | intro _ _
    | intro _

/-- Member `fixDoubleBlack` changes no payload. -/
theorem Keeps.fixDoubleBlack {m : map K V} : ∀ (fuel : Nat) (m1 : map K V) (x p s : ptr),
    Keep m m1 → Keeps m (map.fixDoubleBlack fuel m1 x p s) := by
  intro fuel
  induction fuel with
  | zero => intro m1 x p s h; exact Keeps.none
  | succ fuel ih =>
    intro m1 x p s h
    simp only [map.fixDoubleBlack, bind_eq_ub, pure_eq_some]
    repeat' with_reducible first
      | refine Keeps.bind ?_ ?_
      | refine Keeps.bind_val ?_
      | refine Keeps.ite ?_ ?_
      | refine Keeps.some ?_
      | refine Keeps.recolor ?_ _ _
      | refine Keeps.l_rotate ?_ _
      | refine Keeps.r_rotate ?_ _
      | refine Keeps.red_child ?_ _ _
      | refine ih _ _ _ _ ?_
      | assumption
      | intro _ _
      | intro _

theorem Keeps.set_parent_target_fix {m m1 : map K V} (h : Keep m m1) (p : ptr) (b : Bool) :
    Keeps m (map.set_parent_target_fix m1 p b) := by
  simp only [map.set_parent_target_fix, bind_eq_ub, pure_eq_some]
  repeat' with_reducible first
    | refine Keeps.bind ?_ ?_
    | refine Keeps.bind_val ?_
    | refine Keeps.ite ?_ ?_
    | refine Keeps.some ?_
    | refine Keeps.fixDoubleBlack _ _ _ _ _ ?_
    | assumption
    | intro _ _
    | intro _

/-- Member `set_parent_target` changes no payload and frees no node. -/
theorem Keeps.set_parent_target {m m1 : map K V} (h : Keep m m1) (p t : ptr) :
    Keeps m (map.set_parent_target m1 p t) := by
  simp only [map.set_parent_target, bind_eq_ub, pure_eq_some]
  repeat' with_reducible first
    | refine Keeps.bind ?_ ?_
    | refine Keeps.bind_val ?_
    | refine Keeps.ite ?_ ?_
    | refine Keeps.some ?_
    | refine Keeps.recolor ?_ _ _
    | refine Keeps.set_l ?_ _ _
    | refine Keeps.set_r ?_ _ _
    | refine Keeps.set_parent ?_ _ _
    | refine Keeps.set_parent_target_fix ?_ _ _
    | assumption
    | refine Keep.root ?_ _
    | intro _ _
    | intro _

end ft

namespace ft
open color_type
variable {K V : Type} [DecidableEq K]

/-! ### The branch of `erase` for a node with at most one child -/

theorem spt_leaf_red {m : map K V} {f : frame K V} {q : List (frame K V)} {p : Nat}
    {vP : Option (K × V)}
    (h : Rep m (fill (f :: q) (.node p red vP .nil .nil))) :
    ∃ m2, map.set_parent_target m (some p) none = some m2 ∧
      Rep m2 (fill (f :: q) .nil) ∧ SameAux m m2 := by
  cases f with
  | L g cg vg sg => exact spt_leaf_red_L h
  | R g cg vg sg => exact spt_leaf_red_R h

theorem spt_leaf_black {m : map K V} {f : frame K V} {q : List (frame K V)} {p : Nat}
    {vP : Option (K × V)}
    (h : Rep m (fill (f :: q) (.node p black vP .nil .nil))) :
    ∃ m2, map.set_parent_target m (some p) none = map.fixDoubleBlack (2 * m2.brk + 2) m2 none (ptop (f :: q))
        (psib (f :: q)) ∧
      Rep m2 (fill (f :: q) .nil) ∧ SameAux m m2 := by
  cases f with
  | L g cg vg sg => exact spt_leaf_black_L h
  | R g cg vg sg => exact spt_leaf_black_R h

theorem spt_r_red {m : map K V} {f : frame K V} {q : List (frame K V)} {p r : Nat}
    {cr : color_type} {vP vr : Option (K × V)} {rl rr : tree K V}
    (h : Rep m (fill (f :: q) (.node p red vP .nil (.node r cr vr rl rr)))) :
    ∃ m2, map.set_parent_target m (some p) (some r) = some m2 ∧
      Rep m2 (fill (f :: q) (.node r cr vr rl rr)) ∧ SameAux m m2 := by
  cases f with
  | L g cg vg sg => exact spt_r_red_L h
  | R g cg vg sg => exact spt_r_red_R h

theorem spt_r_black_black {m : map K V} {f : frame K V} {q : List (frame K V)} {p r : Nat}
    {vP vr : Option (K × V)} {rl rr : tree K V}
    (h : Rep m (fill (f :: q) (.node p black vP .nil (.node r black vr rl rr)))) :
    ∃ m2, map.set_parent_target m (some p) (some r) = map.fixDoubleBlack (2 * m2.brk + 2) m2 (some r) (ptop (f :: q))
        (psib (f :: q)) ∧
      Rep m2 (fill (f :: q) (.node r black vr rl rr)) ∧ SameAux m m2 := by
  cases f with
  | L g cg vg sg => exact spt_r_black_black_L h
  | R g cg vg sg => exact spt_r_black_black_R h

theorem spt_r_black_red {m : map K V} {f : frame K V} {q : List (frame K V)} {p r : Nat}
    {vP vr : Option (K × V)} {rl rr : tree K V}
    (h : Rep m (fill (f :: q) (.node p black vP .nil (.node r red vr rl rr)))) :
    ∃ m2, map.set_parent_target m (some p) (some r) = some m2 ∧
      Rep m2 (fill (f :: q) (.node r black vr rl rr)) ∧ SameAux m m2 := by
  cases f with
  | L g cg vg sg => exact spt_r_black_red_L h
  | R g cg vg sg => exact spt_r_black_red_R h

theorem spt_l_red {m : map K V} {f : frame K V} {q : List (frame K V)} {p r : Nat}
    {cr : color_type} {vP vr : Option (K × V)} {rl rr : tree K V}
    (h : Rep m (fill (f :: q) (.node p red vP (.node r cr vr rl rr) .nil))) :
    ∃ m2, map.set_parent_target m (some p) (some r) = some m2 ∧
      Rep m2 (fill (f :: q) (.node r cr vr rl rr)) ∧ SameAux m m2 := by
  cases f with
  | L g cg vg sg => exact spt_l_red_L h
  | R g cg vg sg => exact spt_l_red_R h

theorem spt_l_black_black {m : map K V} {f : frame K V} {q : List (frame K V)} {p r : Nat}
    {vP vr : Option (K × V)} {rl rr : tree K V}
    (h : Rep m (fill (f :: q) (.node p black vP (.node r black vr rl rr) .nil))) :
    ∃ m2, map.set_parent_target m (some p) (some r) = map.fixDoubleBlack (2 * m2.brk + 2) m2 (some r) (ptop (f :: q))
        (psib (f :: q)) ∧
      Rep m2 (fill (f :: q) (.node r black vr rl rr)) ∧ SameAux m m2 := by
  cases f with
  | L g cg vg sg => exact spt_l_black_black_L h
  | R g cg vg sg => exact spt_l_black_black_R h

theorem spt_l_black_red {m : map K V} {f : frame K V} {q : List (frame K V)} {p r : Nat}
    {vP vr : Option (K × V)} {rl rr : tree K V}
    (h : Rep m (fill (f :: q) (.node p black vP (.node r red vr rl rr) .nil))) :
    ∃ m2, map.set_parent_target m (some p) (some r) = some m2 ∧
      Rep m2 (fill (f :: q) (.node r black vr rl rr)) ∧ SameAux m m2 := by
  cases f with
  | L g cg vg sg => exact spt_l_black_red_L h
  | R g cg vg sg => exact spt_l_black_red_R h


/-- The branch of `erase(iterator)` for a node with at most one child is the call of
`set_parent_target` followed by the destruction of the node. -/
theorem erase_rec_simple {m : map K V} {p : Nat} {n : node_type K V} (hc : m.mem p = some n)
    (hsz : m._sz ≠ 1) (hnot : n.l = none ∨ n.r = none) (fuel : Nat) :
    map.erase_rec (fuel + 1) m (some p) =
      ub_bind (map.set_parent_target m (some p) (if n.l = none then n.r else n.l))
        (fun m1 => map.erase_tail m1 (some p)) := by
  simp only [map.erase_rec, hsz, if_false, bind_eq_ub, get_l_eq hc, get_r_eq hc, ub_bind_some,
    map.erase_tail, pure_eq_some]
  rcases hnot with hl | hr
  · rw [hl]
    cases hr : n.r with
    | none => simp
    | some b => simp
  · rw [hr]
    cases hl : n.l with
    | none => simp
    | some b => simp

/-- Deleting a node that is not in the tree. -/
theorem Rep.delete {m : map K V} {T : tree K V} (h : Rep m T) {p : Nat} (hp : p ∉ T.addrs)
    (x : Option (node_type K V)) (s : Nat) :
    Rep { m with mem := Function.update m.mem p x, _sz := s } T :=
  ⟨h.root, h.shaped.upd hp x, h.nodup, h.bound⟩

/-- The statements of `erase(iterator)` after `set_parent_target`, for a live data node that
is no longer in the tree. -/
theorem erase_tail_spec {m : map K V} {T : tree K V} {c0 : color_type} {n0 : Nat} {p : Nat}
    {x : K × V} (h : Rep m T) (hb : Bal T c0 n0) (hne : T ≠ .nil) (hp : p ∉ T.addrs)
    (hv : (m.mem p).map (·.val) = some (some x)) (hsz : 2 ≤ m._sz) :
    ∃ m2 T2, map.erase_tail m (some p) = some m2 ∧ Rep m2 T2 ∧ T2.elems = T.elems ∧
      (∃ n2, Bal T2 black n2) ∧ m2.brk = m.brk ∧ m2._sz = m._sz - 1 ∧ m2._cmp_k = m._cmp_k := by
  cases hc : m.mem p with
  | none => rw [hc] at hv; simp at hv
  | some n =>
    rw [hc] at hv
    simp only [Option.map_some', Option.some.injEq] at hv
    have r1 : Rep { m with mem := Function.update m.mem p none, _sz := m._sz - 1 } T :=
      h.delete hp none _
    obtain ⟨m2, T2, e2, r2, a2, el, bl⟩ := Rep.finish r1 hb hne
    refine ⟨m2, T2, ?_, r2, el, bl, a2.1, a2.2.1, a2.2.2⟩
    have hne0 : m._sz - 1 ≠ 0 := by omega
    simp only [map.erase_tail, bind_eq_ub, pure_eq_some, get_val_eq hc, hv, ub_bind_some,
      delete_node, hc, ne_eq, hne0, not_false_eq_true, if_true]
    exact e2

/-- The branch of `erase(iterator)` for a node with at most one child, once the effect of
`set_parent_target` is known. -/
theorem erase_after_unlink {m m1 : map K V} {p : Nat} {n : node_type K V} {x : K × V}
    {T1 : tree K V} {c0 : color_type} {n0 : Nat} {tgt : ptr}
    (hc : m.mem p = some n) (hx : n.val = some x) (hnot : n.l = none ∨ n.r = none)
    (htgt : tgt = if n.l = none then n.r else n.l) (hsz : 2 ≤ m._sz)
    (e1 : map.set_parent_target m (some p) tgt = some m1) (r1 : Rep m1 T1)
    (hb : Bal T1 c0 n0) (hne : T1 ≠ .nil) (hp : p ∉ T1.addrs) (fuel : Nat) :
    ∃ m2 T2, map.erase_rec (fuel + 1) m (some p) = some m2 ∧ Rep m2 T2 ∧
      T2.elems = T1.elems ∧ (∃ n2, Bal T2 black n2) ∧ m2.brk = m.brk ∧
      m2._sz = m._sz - 1 ∧ m2._cmp_k = m._cmp_k := by
  have hk : Keep m m1 := (Keeps.set_parent_target Keep.refl_keep (some p) tgt).out m1 e1
  have hv : (m1.mem p).map (·.val) = some (some x) := by
    rw [hk.1 p, hc]; simp [hx]
  obtain ⟨m2, T2, e2, r2, el, bl, b1, b2, b3⟩ :=
    erase_tail_spec r1 hb hne hp hv (by rw [hk.2.2.1]; exact hsz)
  refine ⟨m2, T2, ?_, r2, el, bl, b1.trans hk.2.1, by rw [b2, hk.2.2.1], b3.trans hk.2.2.2⟩
  rw [erase_rec_simple hc (by omega) hnot, ← htgt, e1, ub_bind_some]
  exact e2

/-- The subtrees of black height `0`. -/
theorem Bal.height_zero {t : tree K V} {c : color_type} (h : Bal t c 0) :
    t = .nil ∨ (∃ a, t = .node a color_type.black none .nil .nil) ∨
      ∃ a x l r, t = .node a color_type.red (some x) l r ∧ Bal l color_type.black 0 ∧
        Bal r color_type.black 0 := by
  cases h with
  | nil => exact Or.inl rfl
  | sentinel a => exact Or.inr (Or.inl ⟨a, rfl⟩)
  | red hl hr => exact Or.inr (Or.inr ⟨_, _, _, _, rfl, hl, hr⟩)

/-- Removal of a node with at most one child, once `set_parent_target` has produced a balanced
tree without the node. -/
theorem remove_core {m m1 : map K V} {f : frame K V} {q : List (frame K V)} {p : Nat}
    {c : color_type} {x : K × V} {L R T1 : tree K V} {c0 : color_type} {n0 : Nat} {tgt : ptr}
    (h : Rep m (fill (f :: q) (.node p c (some x) L R))) (hLR : L = .nil ∨ R = .nil)
    (htgt : tgt = if L.top = none then R.top else L.top) (hsz : 2 ≤ m._sz)
    (e1 : map.set_parent_target m (some p) tgt = some m1) (r1 : Rep m1 T1)
    (hel : T1.elems = pbefore (f :: q) ++ (L.elems ++ R.elems) ++ pafter (f :: q))
    (hb : Bal T1 c0 n0) (fuel : Nat) :
    ∃ m2 T2, map.erase_rec (fuel + 1) m (some p) = some m2 ∧ Rep m2 T2 ∧
      T2.elems = pbefore (f :: q) ++ (L.elems ++ R.elems) ++ pafter (f :: q) ∧
      (∃ n2, Bal T2 black n2) ∧ m2.brk = m.brk ∧ m2._sz = m._sz - 1 ∧
      m2._cmp_k = m._cmp_k := by
  have hne : T1 ≠ .nil := by
    intro e
    have h1 := path_length_le (f :: q)
    have h2 := congrArg List.length hel
    rw [e] at h2
    simp [tree.elems] at h2 h1
    omega
  obtain ⟨d1, d2, d3, -⟩ := Rep.distinct h
  have hp : p ∉ T1.addrs := by
    simp only [tree.addrs] at d1 d2 ⊢
    simp only [paddrs, List.map_append, List.mem_append] at d3
    rw [hel]
    simp only [List.map_append, List.mem_append]
    tauto
  have hc := Rep.cell h
  obtain ⟨m2, T2, e2, r2, el, bl, b⟩ :=
    erase_after_unlink (x := x) hc rfl (by rcases hLR with rfl | rfl <;> simp [tree.top]) htgt hsz
      e1 r1 hb hne hp fuel
  exact ⟨m2, T2, e2, r2, el.trans hel, bl, b⟩

/-- Removal of a black node with at most one child whose place is left one black node short:
`set_parent_target` ends in `fixDoubleBlack`. -/
theorem remove_fix {m m1 : map K V} {f : frame K V} {q : List (frame K V)} {p : Nat}
    {c : color_type} {x : K × V} {L R X : tree K V} {k : Nat} {tgt : ptr}
    (h : Rep m (fill (f :: q) (.node p c (some x) L R))) (hLR : L = .nil ∨ R = .nil)
    (htgt : tgt = if L.top = none then R.top else L.top) (hsz : 2 ≤ m._sz)
    (e : map.set_parent_target m (some p) tgt =
      map.fixDoubleBlack (2 * m1.brk + 2) m1 X.top (ptop (f :: q)) (psib (f :: q)))
    (r1 : Rep m1 (fill (f :: q) X)) (hX : Bal X black k) (hpb : PathBal (f :: q) black (k + 1))
    (hel : X.elems = L.elems ++ R.elems) (fuel : Nat) :
    ∃ m2 T2, map.erase_rec (fuel + 1) m (some p) = some m2 ∧ Rep m2 T2 ∧
      T2.elems = pbefore (f :: q) ++ (L.elems ++ R.elems) ++ pafter (f :: q) ∧
      (∃ n2, Bal T2 black n2) ∧ m2.brk = m.brk ∧ m2._sz = m._sz - 1 ∧
      m2._cmp_k = m._cmp_k := by
  have hfuel : 2 * (f :: q).length + 1 ≤ 2 * m1.brk + 2 := by
    have h1 := fill_length (f :: q) X
    have h2 := r1.card_le
    omega
  obtain ⟨m2, T2, e2, r2, -, el2, c0, n0, hb2⟩ :=
    fixDoubleBlack_spec (2 * m1.brk + 2) (f :: q) m1 X k r1 hX hpb hfuel
  exact remove_core h hLR htgt hsz (e.trans e2) r2 (by rw [el2, fill_elems, hel]) hb2 fuel

/-- Member `erase(iterator)` at a data node with at most one child, in a map of at least two
elements: the node leaves the in-order sequence, the tree is red-black again. -/
theorem remove_simple {m : map K V} {f : frame K V} {q : List (frame K V)} {p : Nat}
    {c : color_type} {x : K × V} {L R : tree K V} {n : Nat}
    (h : Rep m (fill (f :: q) (.node p c (some x) L R))) (hLR : L = .nil ∨ R = .nil)
    (hb : Bal (.node p c (some x) L R) c n) (hpb : PathBal (f :: q) c n)
    (hsz : 2 ≤ m._sz) (fuel : Nat) :
    ∃ m2 T2, map.erase_rec (fuel + 1) m (some p) = some m2 ∧ Rep m2 T2 ∧
      T2.elems = pbefore (f :: q) ++ (L.elems ++ R.elems) ++ pafter (f :: q) ∧
      (∃ n2, Bal T2 black n2) ∧ m2.brk = m.brk ∧ m2._sz = m._sz - 1 ∧
      m2._cmp_k = m._cmp_k := by
  cases hb with
  | red hl hr =>
    have hpb2 : PathBal (f :: q) black n := PathBal.red_any hpb black
    rcases hLR with rfl | rfl
    · cases hl
      rcases hr.height_zero with rfl | ⟨a, rfl⟩ | ⟨a, y, l, r, rfl, -, -⟩
      · obtain ⟨m1, e1, r1, -⟩ := spt_leaf_red h
        obtain ⟨c0, n0, hb0⟩ := hpb2.fill Bal.nil
        exact remove_core h (Or.inl rfl) rfl hsz e1 r1 (by rw [fill_elems]; simp [tree.elems])
          hb0 fuel
      · obtain ⟨m1, e1, r1, -⟩ := spt_r_red h
        obtain ⟨c0, n0, hb0⟩ := hpb2.fill (Bal.sentinel a)
        exact remove_core h (Or.inl rfl) rfl hsz e1 r1 (by rw [fill_elems]; simp [tree.elems])
          hb0 fuel
      · cases hr
    · cases hr
      rcases hl.height_zero with rfl | ⟨a, rfl⟩ | ⟨a, y, l, r, rfl, -, -⟩
      · obtain ⟨m1, e1, r1, -⟩ := spt_leaf_red h
        obtain ⟨c0, n0, hb0⟩ := hpb2.fill Bal.nil
        exact remove_core h (Or.inl rfl) rfl hsz e1 r1 (by rw [fill_elems]; simp [tree.elems])
          hb0 fuel
      · obtain ⟨m1, e1, r1, -⟩ := spt_l_red h
        obtain ⟨c0, n0, hb0⟩ := hpb2.fill (Bal.sentinel a)
        exact remove_core h (Or.inr rfl) rfl hsz e1 r1 (by rw [fill_elems]; simp [tree.elems])
          hb0 fuel
      · cases hl
  | black hl hr =>
    rcases hLR with rfl | rfl
    · cases hl
      rcases hr.height_zero with rfl | ⟨a, rfl⟩ | ⟨a, y, l, r, rfl, hl2, hr2⟩
      · obtain ⟨m1, e1, r1, -⟩ := spt_leaf_black h
        exact remove_fix (X := .nil) h (Or.inl rfl) rfl hsz e1 r1 Bal.nil hpb rfl fuel
      · obtain ⟨m1, e1, r1, -⟩ := spt_r_black_black h
        exact remove_fix (X := .node a black none .nil .nil) h (Or.inl rfl) rfl hsz e1 r1
          (Bal.sentinel a) hpb rfl fuel
      · obtain ⟨m1, e1, r1, -⟩ := spt_r_black_red h
        obtain ⟨c0, n0, hb0⟩ := hpb.fill (Bal.black (x := y) (a := a) hl2 hr2)
        exact remove_core h (Or.inl rfl) rfl hsz e1 r1 (by rw [fill_elems]; simp [tree.elems])
          hb0 fuel
    · cases hr
      rcases hl.height_zero with rfl | ⟨a, rfl⟩ | ⟨a, y, l, r, rfl, hl2, hr2⟩
      · obtain ⟨m1, e1, r1, -⟩ := spt_leaf_black h
        exact remove_fix (X := .nil) h (Or.inl rfl) rfl hsz e1 r1 Bal.nil hpb rfl fuel
      · obtain ⟨m1, e1, r1, -⟩ := spt_l_black_black h
        exact remove_fix (X := .node a black none .nil .nil) h (Or.inr rfl) rfl hsz e1 r1
          (Bal.sentinel a) hpb (by simp [tree.elems]) fuel
      · obtain ⟨m1, e1, r1, -⟩ := spt_l_black_red h
        obtain ⟨c0, n0, hb0⟩ := hpb.fill (Bal.black (x := y) (a := a) hl2 hr2)
        exact remove_core h (Or.inr rfl) rfl hsz e1 r1 (by rw [fill_elems]; simp [tree.elems])
          hb0 fuel

end ft

namespace ft
open color_type
variable {K V : Type} [DecidableEq K]

/-! ### The branch of `erase` for a node with two children -/

theorem AllL.pbefore_nil {rs : List (frame K V)} (h : AllL rs) : pbefore rs = [] := by
  induction rs with
  | nil => rfl
  | cons f rs ih =>
    obtain ⟨⟨a, c, v, s, rfl⟩, h2⟩ := AllL.cons_iff.1 h
    simpa [pbefore] using ih h2

theorem AllL.append_one {rs : List (frame K V)} (h : AllL rs) (a : Nat) (c : color_type)
    (v : Option (K × V)) (s : tree K V) : AllL (rs ++ [frame.L a c v s]) := by
  intro f hf
  rcases List.mem_append.1 hf with h1 | h1
  · exact h f h1
  · exact ⟨a, c, v, s, by simpa using h1⟩

/-- The path from the root of a subtree to its leftmost data node: it ends at a data node whose
left child is absent or an end node. -/
theorem tree.leftmost_decomp : ∀ (l : tree K V) (a : Nat) (c : color_type) (x : K × V)
    (r : tree K V),
    ∃ (rs : List (frame K V)) (b : Nat) (cb : color_type) (xb : K × V) (bl br : tree K V),
      tree.node a c (some x) l r = fill rs (.node b cb (some xb) bl br) ∧ AllL rs ∧
      (∀ f ∈ rs, f.val ≠ none) ∧ (bl = .nil ∨ ∃ e ce el er, bl = .node e ce none el er) := by
  intro l
  induction l with
  | nil =>
    intro a c x r
    exact ⟨[], a, c, x, .nil, r, rfl, by simp [AllL], by simp, Or.inl rfl⟩
  | node a2 c2 v2 l2 r2 ihl _ =>
    intro a c x r
    cases v2 with
    | none =>
      exact ⟨[], a, c, x, _, r, rfl, by simp [AllL], by simp, Or.inr ⟨_, _, _, _, rfl⟩⟩
    | some x2 =>
      obtain ⟨rs, b, cb, xb, bl, br, e, hL, hd, hbl⟩ := ihl a2 c2 x2 r2
      refine ⟨rs ++ [.L a c (some x) r], b, cb, xb, bl, br, ?_, hL.append_one _ _ _ _, ?_, hbl⟩
      · rw [fill_append, ← e]; rfl
      · intro f hf
        rcases List.mem_append.1 hf with h1 | h1
        · exact hd f h1
        · have : f = .L a c (some x) r := by simpa using h1
          subst this
          simp [frame.val]

/-- The root of a subtree reached through data nodes is a data node. -/
theorem fill_data_top {rs : List (frame K V)} (hd : ∀ f ∈ rs, f.val ≠ none) (b : Nat)
    (cb : color_type) (xb : K × V) (bl br : tree K V) :
    ∃ a c x l r, fill rs (.node b cb (some xb) bl br) = .node a c (some x) l r := by
  induction rs generalizing b cb xb bl br with
  | nil => exact ⟨_, _, _, _, _, rfl⟩
  | cons f rs ih =>
    have hf := hd f (List.mem_cons_self _ _)
    have hq := fun g hg => hd g (List.mem_cons_of_mem _ hg)
    cases f with
    | L a c v s =>
      cases v with
      | none => simp [frame.val] at hf
      | some x => exact ih hq a c x _ _
    | R a c v s =>
      cases v with
      | none => simp [frame.val] at hf
      | some x => exact ih hq a c x _ _

/-- The loop of `erase` that walks to the leftmost data node of a subtree. -/
theorem descend_l_spec {b : Nat} {cb : color_type} {xb : K × V} {bl br : tree K V}
    (hbl : bl = .nil ∨ ∃ e ce el er, bl = .node e ce none el er) :
    ∀ (rs q : List (frame K V)) (m : map K V) (fuel : Nat),
    Rep m (fill (rs ++ q) (.node b cb (some xb) bl br)) → AllL rs → (∀ f ∈ rs, f.val ≠ none) →
    rs.length < fuel →
    map.descend_l fuel m (fill rs (.node b cb (some xb) bl br)).top = some (some b) := by
  intro rs
  induction rs using List.reverseRecOn with
  | nil =>
    intro q m fuel h _ _ hf
    obtain ⟨fuel, rfl⟩ : ∃ f, fuel = f + 1 := ⟨fuel - 1, by simp at hf; omega⟩
    have hc := Rep.cell (p := q) h
    rcases hbl with rfl | ⟨e, ce, el, er, rfl⟩
    · simp [fill, tree.top, map.descend_l, get_l_eq hc]
    · have hce := Rep.cell (p := .L b cb (some xb) br :: q) h
      simp [fill, tree.top, map.descend_l, get_l_eq hc, get_val_eq hce]
  | append_singleton rs f ih =>
    intro q m fuel h hL hd hf
    obtain ⟨fuel, rfl⟩ : ∃ f, fuel = f + 1 := ⟨fuel - 1, by simp at hf; omega⟩
    have hL1 : AllL rs := fun g hg => hL g (List.mem_append_left _ hg)
    have hd1 : ∀ g ∈ rs, g.val ≠ none := fun g hg => hd g (List.mem_append_left _ hg)
    obtain ⟨a, c, v, s, rfl⟩ := hL f (by simp)
    obtain ⟨a2, c2, x2, l2, r2, e2⟩ := fill_data_top hd1 b cb xb bl br
    have h2 : Rep m (fill (rs ++ (.L a c v s :: q)) (.node b cb (some xb) bl br)) := by
      simpa using h
    have h3 := h2
    rw [fill_append, fill_L, e2] at h3
    have hc := Rep.cell (p := q) h3
    have hc2 := Rep.cell (p := .L a c v s :: q) h3
    have ih2 := ih (.L a c v s :: q) m fuel h2 hL1 hd1 (by simp at hf; omega)
    rw [e2] at ih2
    rw [fill_append, e2]
    simp only [fill, tree.top] at ih2 ⊢
    simp [map.descend_l, get_l_eq hc, get_val_eq hc2, ih2, tree.top]

/-- An end node inside an in-order sequence framed by the end nodes is its first or its last
node. -/
theorem Framed.no_inner_end {A B : List (Nat × Option (K × V))} {e : Nat}
    (h : Framed (A ++ (e, none) :: B)) (hA : A ≠ []) (hB : B ≠ []) : False := by
  obtain ⟨lo, hi, mid, e1, hm⟩ := h
  cases A with
  | nil => exact hA rfl
  | cons a0 A2 =>
    rcases List.eq_nil_or_concat B with rfl | ⟨B2, b1, rfl⟩
    · exact hB rfl
    · simp only [List.cons_append, List.cons.injEq] at e1
      have e2 : (A2 ++ (e, none) :: B2) ++ [b1] = mid ++ [(hi, none)] := by
        rw [← e1.2]; simp
      have e3 := (List.append_inj' e2 rfl).1
      exact hm (e, none) (by rw [← e3]; simp) rfl

/-- The red-black shape of a data node does not depend on its address and payload. -/
theorem Bal.relabel {a b : Nat} {c c0 : color_type} {x y : K × V} {l r : tree K V} {n : Nat}
    (h : Bal (.node a c (some x) l r) c0 n) : Bal (.node b c (some y) l r) c0 n := by
  cases h with
  | red hl hr => exact Bal.red hl hr
  | black hl hr => exact Bal.black hl hr

/-- The red-black shape of a path does not depend on the address and payload of a frame that
is a data node. -/
theorem PathBal.relabel_R {a b : Nat} {cP : color_type} {x y : K × V} {L : tree K V}
    {q : List (frame K V)} :
    ∀ (rs : List (frame K V)) (c : color_type) (n : Nat),
    PathBal (rs ++ .R a cP (some x) L :: q) c n → PathBal (rs ++ .R b cP (some y) L :: q) c n := by
  intro rs
  induction rs with
  | nil =>
    intro c n h
    cases h with
    | redR hl hq => exact PathBal.redR hl hq
    | blackR hl hq => exact PathBal.blackR hl hq
  | cons f rs ih =>
    intro c n h
    cases h with
    | redL hr hq => exact PathBal.redL hr (ih _ _ hq)
    | redR hl hq => exact PathBal.redR hl (ih _ _ hq)
    | blackL hr hq => exact PathBal.blackL hr (ih _ _ hq)
    | blackR hl hq => exact PathBal.blackR hl (ih _ _ hq)

/-- The same for a frame whose hole is the left child. -/
theorem PathBal.relabel_L {a b : Nat} {cP : color_type} {x y : K × V} {R : tree K V}
    {q : List (frame K V)} {c : color_type} {n : Nat}
    (h : PathBal (.L a cP (some x) R :: q) c n) : PathBal (.L b cP (some y) R :: q) c n := by
  cases h with
  | redL hr hq => exact PathBal.redL hr hq
  | blackL hr hq => exact PathBal.blackL hr hq

/-- The branch of `erase(iterator)` for a node with two children is the walk to the in-order
neighbour, `_swap_nodes` and the self-call. -/
theorem erase_rec_two {m : map K V} {p l r : Nat} {n : node_type K V} (hc : m.mem p = some n)
    (hsz : m._sz ≠ 1) (hl : n.l = some l) (hr : n.r = some r) (fuel : Nat) :
    map.erase_rec (fuel + 1) m (some p) =
      ub_bind (ub_bind (get_val m (some r)) (fun v =>
          if v.isSome then map.descend_l (m.brk + 1) m (some r)
          else map.descend_r (m.brk + 1) m (some l)))
        (fun tmp => ub_bind (map._swap_nodes m (some p) tmp)
          (fun m2 => map.erase_rec fuel m2 (some p))) := by
  simp only [map.erase_rec, hsz, if_false, bind_eq_ub, get_l_eq hc, get_r_eq hc, ub_bind_some,
    hl, hr, pure_eq_some]
  simp


/-- Member `_swap_nodes` of a node with two children and the leftmost node of its right subtree,
which has no left child: the two nodes exchange their places and colours. -/
theorem swap_succ {m : map K V} {q rs : List (frame K V)} {p t l : Nat}
    {cP ct cl : color_type} {vP vt vl : Option (K × V)} {ll lr TR : tree K V} (hL : AllL rs)
    (h : Rep m (fill (rs ++ .R p cP vP (.node l cl vl ll lr) :: q) (.node t ct vt .nil TR))) :
    ∃ m2, map._swap_nodes m (some p) (some t) = some m2 ∧
      Rep m2 (fill (rs ++ .R t cP vt (.node l cl vl ll lr) :: q) (.node p ct vP .nil TR)) ∧
      SameAux m m2 := by
  cases rs with
  | nil => exact swap_adj_succ h
  | cons f0 rs0 => exact swap_far_succ (by simp) hL h

theorem Framed.head_none {a : Nat} {v : Option (K × V)} {B : List (Nat × Option (K × V))}
    (h : Framed ((a, v) :: B)) : v = none := by
  obtain ⟨lo, hi, mid, e1, hm⟩ := h
  simp only [List.cons.injEq, Prod.mk.injEq] at e1
  exact e1.1.2

theorem Framed.last_none {a : Nat} {v : Option (K × V)} {A : List (Nat × Option (K × V))}
    (h : Framed (A ++ [(a, v)])) : v = none := by
  obtain ⟨lo, hi, mid, e1, hm⟩ := h
  have e2 : A ++ [(a, v)] = ((lo, none) :: mid) ++ [(hi, none)] := by rw [e1]; simp
  have e3 := (List.append_inj' e2 rfl).2
  simp only [List.cons.injEq, Prod.mk.injEq, and_true] at e3
  exact e3.2

/-- Member `erase(iterator)` at a data node with two children whose right child is a data
node. -/
theorem erase_two_succ {m : map K V} {q : List (frame K V)} {p l r : Nat}
    {cP cl cr : color_type} {x xr : K × V} {vl : Option (K × V)} {ll lr rl rr : tree K V}
    {c0 : color_type} {n0 : Nat}
    (h : Rep m (fill q (.node p cP (some x) (.node l cl vl ll lr) (.node r cr (some xr) rl rr))))
    (hF : Framed (fill q (.node p cP (some x) (.node l cl vl ll lr)
      (.node r cr (some xr) rl rr))).elems)
    (hb : Bal (fill q (.node p cP (some x) (.node l cl vl ll lr) (.node r cr (some xr) rl rr)))
      c0 n0)
    (hsz : 2 ≤ m._sz) (fuel : Nat) :
    ∃ m2 T2, map.erase_rec (fuel + 2) m (some p) = some m2 ∧ Rep m2 T2 ∧
      T2.elems = pbefore q ++ ((tree.node l cl vl ll lr).elems ++
        (tree.node r cr (some xr) rl rr).elems) ++ pafter q ∧
      (∃ n2, Bal T2 black n2) ∧ m2.brk = m.brk ∧ m2._sz = m._sz - 1 ∧
      m2._cmp_k = m._cmp_k := by
  have hc := Rep.cell h
  have hcr := Rep.cell (p := .R p cP (some x) (.node l cl vl ll lr) :: q) h
  have hun := erase_rec_two hc (by omega) (l := l) (r := r) rfl rfl (fuel + 1)
  obtain ⟨rs, t, ct, xt, tl, TR, e, hL, hd, htl⟩ := tree.leftmost_decomp rl r cr xr rr
  rw [e] at h hF hb ⊢
  have htl2 : tl = .nil := by
    rcases htl with rfl | ⟨e1, ce, el, er, rfl⟩
    · rfl
    · exfalso
      refine Framed.no_inner_end (e := e1)
        (A := pbefore q ++ (tree.node l cl vl ll lr).elems ++ [(p, some x)] ++ el.elems)
        (B := er.elems ++ (t, some xt) :: TR.elems ++ pafter rs ++ pafter q) ?_ (by simp)
        (by simp)
      have e2 : (fill q (.node p cP (some x) (.node l cl vl ll lr)
          (fill rs (.node t ct (some xt) (.node e1 ce none el er) TR)))).elems =
          pbefore q ++ (tree.node l cl vl ll lr).elems ++ [(p, some x)] ++ el.elems ++
            (e1, none) :: (er.elems ++ (t, some xt) :: TR.elems ++ pafter rs ++ pafter q) := by
        simp [fill_elems, tree.elems, hL.pbefore_nil]
      rw [← e2]; exact hF
  subst htl2
  have h2 : Rep m (fill (rs ++ .R p cP (some x) (.node l cl vl ll lr) :: q)
      (.node t ct (some xt) .nil TR)) := by
    rw [fill_append]; exact h
  have hlen : rs.length < m.brk + 1 := by
    have h3 := fill_length (rs ++ .R p cP (some x) (.node l cl vl ll lr) :: q)
      (.node t ct (some xt) .nil TR)
    have h4 := h2.card_le
    simp only [List.length_append] at h3
    omega
  have hdesc := descend_l_spec (Or.inl rfl) rs (.R p cP (some x) (.node l cl vl ll lr) :: q) m
    (m.brk + 1) h2 hL hd hlen
  rw [← e] at hdesc
  have hdesc2 : map.descend_l (m.brk + 1) m (some r) = some (some t) := hdesc
  obtain ⟨m1, es, r1, sa⟩ := swap_succ hL h2
  have hb2 : Bal (fill (rs ++ .R p cP (some x) (.node l cl vl ll lr) :: q)
      (.node t ct (some xt) .nil TR)) c0 n0 := by
    rw [fill_append]; exact hb
  have hdp := Bal.data_path hb2 (by simp)
  obtain ⟨c, n, hbt, hpb⟩ := Bal.unfill hb2 hdp
  have hct : ct = c := by simpa [tree.color] using hbt.color_eq
  subst hct
  have hbp : Bal (.node p ct (some x) .nil TR) ct n := hbt.relabel
  have hpb2 := PathBal.relabel_R (b := t) (y := xt) rs ct n hpb
  obtain ⟨f, q2, eq2⟩ : ∃ f q2, rs ++ .R t cP (some xt) (.node l cl vl ll lr) :: q = f :: q2 := by
    cases rs with
    | nil => exact ⟨_, _, rfl⟩
    | cons f0 rs0 => exact ⟨_, _, rfl⟩
  rw [eq2] at r1 hpb2
  obtain ⟨m2, T2, e2, r2, el, bl, b1, b2, b3⟩ :=
    remove_simple r1 (Or.inl rfl) hbp hpb2 (by rw [sa.2.1]; exact hsz) fuel
  refine ⟨m2, T2, ?_, r2, ?_, bl, b1.trans sa.1, by rw [b2, sa.2.1], b3.trans sa.2.2⟩
  · rw [hun, get_val_eq hcr]
    simp only [ub_bind_some, Option.isSome_some, if_true, hdesc2, es]
    exact e2
  · rw [el, ← eq2]
    simp [pbefore_append, pafter_append, hL.pbefore_nil, fill_elems, pbefore, pafter, tree.elems]

/-- Member `erase(iterator)` at a data node with two children whose right child is the high
end node. -/
theorem erase_two_pred {m : map K V} {q : List (frame K V)} {p l r : Nat}
    {cP cl cr : color_type} {x : K × V} {vl : Option (K × V)} {ll lr rl rr : tree K V}
    {c0 : color_type} {n0 : Nat}
    (h : Rep m (fill q (.node p cP (some x) (.node l cl vl ll lr) (.node r cr none rl rr))))
    (hF : Framed (fill q (.node p cP (some x) (.node l cl vl ll lr)
      (.node r cr none rl rr))).elems)
    (hb : Bal (fill q (.node p cP (some x) (.node l cl vl ll lr) (.node r cr none rl rr)))
      c0 n0)
    (hsz : 2 ≤ m._sz)
    (hdl : 2 ≤ (fill q (.node p cP (some x) (.node l cl vl ll lr)
      (.node r cr none rl rr))).data.length) (fuel : Nat) :
    ∃ m2 T2, map.erase_rec (fuel + 2) m (some p) = some m2 ∧ Rep m2 T2 ∧
      T2.elems = pbefore q ++ ((tree.node l cl vl ll lr).elems ++
        (tree.node r cr none rl rr).elems) ++ pafter q ∧
      (∃ n2, Bal T2 black n2) ∧ m2.brk = m.brk ∧ m2._sz = m._sz - 1 ∧
      m2._cmp_k = m._cmp_k := by
  have hc := Rep.cell h
  have hcr := Rep.cell (p := .R p cP (some x) (.node l cl vl ll lr) :: q) h
  have hcl := Rep.cell (p := .L p cP (some x) (.node r cr none rl rr) :: q) h
  have hun := erase_rec_two hc (by omega) (l := l) (r := r) rfl rfl (fuel + 1)
  have hdq := Bal.data_path hb (by simp)
  obtain ⟨c, n, hbp, hpq⟩ := Bal.unfill hb hdq
  -- the right child is a childless end node, so the left subtree has black height `0`
  have key : ∃ c1, Bal (.node l cl vl ll lr) c1 0 ∧ rl = .nil ∧ rr = .nil := by
    cases hbp with
    | red hl hr => cases hr; exact ⟨_, hl, rfl, rfl⟩
    | black hl hr => cases hr; exact ⟨_, hl, rfl, rfl⟩
  obtain ⟨c1, hbl, rfl, rfl⟩ := key
  have hel : (fill q (.node p cP (some x) (.node l cl vl ll lr) (.node r cr none .nil .nil))).elems
      = pbefore q ++ ll.elems ++ (l, vl) :: (lr.elems ++ (p, some x) :: (r, none) :: pafter q) := by
    simp [fill_elems, tree.elems]
  -- the left child is a data node without right child
  have key2 : ∃ xl, vl = some xl ∧ lr = .nil := by
    cases hbl with
    | sentinel =>
      exfalso
      simp only [tree.elems, List.append_nil, List.nil_append] at hel
      rw [hel] at hF
      have h1 : pbefore q = [] := by
        by_contra hne
        exact Framed.no_inner_end hF hne (by simp)
      have h2 : pafter q = [] := by
        by_contra hne
        have hF2 : Framed ((pbefore q ++ (l, none) :: [(p, some x)]) ++ (r, none) :: pafter q) := by
          simpa using hF
        exact Framed.no_inner_end hF2 (by simp) hne
      simp [tree.data, hel, h1, h2] at hdl
    | @red _ xl _ _ _ hl hr =>
      refine ⟨xl, rfl, ?_⟩
      rcases hr.height_zero with rfl | ⟨a, rfl⟩ | ⟨a, y, l2, r2, rfl, -, -⟩
      · rfl
      · exfalso
        simp only [tree.elems, List.append_nil, List.nil_append] at hel
        rw [hel] at hF
        have hF2 : Framed ((pbefore q ++ ll.elems ++ [(l, some xl)]) ++ (a, none) ::
            ((p, some x) :: (r, none) :: pafter q)) := by
          simpa using hF
        exact Framed.no_inner_end hF2 (by simp) (by simp)
      · cases hr
  obtain ⟨xl, rfl, rfl⟩ := key2
  have hdesc : map.descend_r (m.brk + 1) m (some l) = some (some l) := by
    simp [map.descend_r, get_r_eq hcl, tree.top]
  obtain ⟨m1, es, r1, sa⟩ := swap_adj_pred h
  have r1b : Rep m1 (fill (.L l cP (some xl) (.node r cr none .nil .nil) :: q)
      (.node p cl (some x) ll .nil)) := r1
  have hb2 : Bal (fill (.L p cP (some x) (.node r cr none .nil .nil) :: q)
      (.node l cl (some xl) ll .nil)) c0 n0 := hb
  have hdp := Bal.data_path hb2 (by simp)
  obtain ⟨c2, n2, hbt, hpb⟩ := Bal.unfill hb2 hdp
  have hct : cl = c2 := by simpa [tree.color] using hbt.color_eq
  subst hct
  have hbp2 : Bal (.node p cl (some x) ll .nil) cl n2 := hbt.relabel
  have hpb2 := PathBal.relabel_L (b := l) (y := xl) hpb
  obtain ⟨m2, T2, e2, r2, el, bl, b1, b2, b3⟩ :=
    remove_simple r1b (Or.inr rfl) hbp2 hpb2 (by rw [sa.2.1]; exact hsz) fuel
  refine ⟨m2, T2, ?_, r2, ?_, bl, b1.trans sa.1, by rw [b2, sa.2.1], b3.trans sa.2.2⟩
  · rw [hun, get_val_eq hcr]
    simp only [ub_bind_some, Option.isSome_none, if_false, hdesc, es]
    simp only [Bool.false_eq_true, if_false, ub_bind_some, hdesc, es]
    exact e2
  · rw [el]
    simp [pbefore, pafter, tree.elems]

end ft

namespace ft
open color_type
variable {K V : Type} [DecidableEq K]

/-! ### `clear`, the default constructor, `end`, `begin` and `find` -/

/-- Member `destroy_rec` frees exactly the nodes of the subtree it is called on. -/
theorem destroy_rec_spec : ∀ (t : tree K V) (m : map K V) (par : ptr) (fuel : Nat),
    Shaped m.mem par t → t.addrs.Nodup → t.height < fuel →
    ∃ m2, map.destroy_rec fuel m t.top = some m2 ∧
      (∀ b, m2.mem b = if b ∈ t.addrs then none else m.mem b) ∧ m2.brk = m.brk ∧
      m2._root = m._root ∧ m2._sz = m._sz ∧ m2._cmp_k = m._cmp_k := by
  intro t
  induction t with
  | nil =>
    intro m par fuel _ _ hf
    obtain ⟨fuel, rfl⟩ : ∃ f, fuel = f + 1 := ⟨fuel - 1, by omega⟩
    exact ⟨m, by simp [map.destroy_rec], by simp, rfl, rfl, rfl, rfl⟩
  | node a c v l r ihl ihr =>
    intro m par fuel hS hn hf
    obtain ⟨fuel, rfl⟩ : ∃ f, fuel = f + 1 := ⟨fuel - 1, by omega⟩
    obtain ⟨hc, hl, hr⟩ := hS
    simp only [tree.addrs_node, List.nodup_append, List.nodup_cons, List.Disjoint,
      List.mem_cons] at hn
    obtain ⟨hnl, ⟨har, hnr⟩, hd⟩ := hn
    have hal : a ∉ l.addrs := fun h => hd h (Or.inl rfl)
    simp only [tree.height] at hf
    obtain ⟨m1, e1, hm1, b1, r1, s1, c1⟩ := ihl m (some a) fuel hl hnl (by omega)
    have hc1 : m1.mem a = some { color := c, val := v, l := l.top, r := r.top, parent := par } := by
      rw [hm1, if_neg hal]; exact hc
    have hr1 : Shaped m1.mem (some a) r := by
      refine hr.agree ?_
      intro b hb
      rw [hm1, if_neg (fun h => hd h (Or.inr hb))]
    obtain ⟨m2, e2, hm2, b2, r2, s2, c2⟩ := ihr m1 (some a) fuel hr1 hnr (by omega)
    have hc2 : m2.mem a = some { color := c, val := v, l := l.top, r := r.top, parent := par } := by
      rw [hm2, if_neg har]; exact hc1
    refine ⟨{ m2 with mem := Function.update m2.mem a none }, ?_, ?_, b2.trans b1, r2.trans r1,
      s2.trans s1, c2.trans c1⟩
    · simp only [map.destroy_rec, tree.top_node, ne_eq, reduceCtorEq, not_false_eq_true, if_true,
        bind_eq_ub, get_val_eq hc, get_l_eq hc, ub_bind_some, e1, get_r_eq hc1, e2, delete_node,
        hc2]
    · intro b
      by_cases hb : b = a
      · subst hb; simp
      · simp only [Function.update_noteq hb, hm2, hm1, tree.addrs_node, List.mem_append,
          List.mem_cons, hb, false_or]
        by_cases h1 : b ∈ l.addrs <;> by_cases h2 : b ∈ r.addrs <;> simp [h1, h2]

/-- Member `_insert_ends` installs the two end nodes at fresh addresses. -/
theorem insert_ends_spec (m : map K V) :
    ∃ m2, map._insert_ends m = some m2 ∧ Rep m2 (skeleton m.brk (m.brk + 1)) ∧
      m2.brk = m.brk + 2 ∧ m2._sz = m._sz ∧ m2._cmp_k = m._cmp_k ∧
      ∀ b, b ≠ m.brk → b ≠ m.brk + 1 → m2.mem b = m.mem b := by
  have hne : m.brk ≠ m.brk + 1 := by omega
  have hne2 : m.brk + 1 ≠ m.brk := by omega
  simp only [map._insert_ends, new_node, bind_eq_ub, set_r, set_parent, get_r, deref, store,
    Option.bind, Function.update_same, Function.update_noteq hne, Function.update_noteq hne2,
    ub_bind_some, Option.map_some', node_type.mk_end]
  refine ⟨_, rfl, ⟨rfl, ?_, ?_, ?_⟩, rfl, rfl, rfl, ?_⟩
  · simp [skeleton, Shaped, Function.update_same, Function.update_noteq hne,
      Function.update_noteq hne2]
  · simp [skeleton, tree.addrs, tree.elems]
  · simp [skeleton, tree.addrs, tree.elems]; omega
  · intro b h1 h2
    simp [Function.update_noteq h1, Function.update_noteq h2]

/-- Member `clear` on a state that represents a tree: all nodes are freed and two new end nodes
are installed. -/
theorem clear_spec {m : map K V} {T : tree K V} (h : Rep m T) :
    ∃ m2, m.clear = some m2 ∧ Rep m2 (skeleton m.brk (m.brk + 1)) ∧
      m2.brk = m.brk + 2 ∧ m2._sz = 0 ∧ m2._cmp_k = m._cmp_k := by
  have hfuel : T.height < m.brk + 1 := by
    have := T.height_le
    have := h.card_le
    omega
  obtain ⟨m1, e1, hm1, b1, r1, s1, c1⟩ := destroy_rec_spec T m none (m.brk + 1) h.shaped h.nodup hfuel
  obtain ⟨m2, e2, r2, b2, s2, c2, -⟩ := insert_ends_spec { m1 with _sz := 0 }
  refine ⟨m2, ?_, ?_, ?_, s2, c2.trans c1⟩
  · simp only [map.clear, bind_eq_ub, h.root, e1, ub_bind_some]
    exact e2
  · have : ({ m1 with _sz := 0 } : map K V).brk = m.brk := b1
    rw [this] at r2
    exact r2
  · rw [b2]; exact congrArg (· + 2) b1

/-- The default constructor yields the two end nodes at the addresses `0` and `1`. -/
theorem mk_default_spec (comp : K → K → Bool) :
    ∃ m : map K V, map.mk_default comp = some m ∧ Rep m (skeleton 0 1) ∧ m.brk = 2 ∧
      m._sz = 0 ∧ m._cmp_k = comp := by
  obtain ⟨m2, e2, r2, b2, s2, c2, -⟩ := insert_ends_spec
    ({ mem := fun _ => none, brk := 0, _root := none, _cmp_k := comp, _sz := 0 } : map K V)
  exact ⟨m2, e2, r2, b2, s2, c2⟩

/-- The loop of `end()` walks to the last node of the in-order sequence. -/
theorem end_loop_spec : ∀ (t : tree K V) (m : map K V) (par : ptr) (fuel : Nat) (a : Nat)
    (c : color_type) (v : Option (K × V)) (l : tree K V),
    Shaped m.mem par (.node a c v l t) → t.height < fuel →
    ∃ e w init, map.end_loop fuel m (some a) = some (some e) ∧
      (tree.node a c v l t).elems = init ++ [(e, w)] := by
  intro t
  induction t with
  | nil =>
    intro m par fuel a c v l hS hf
    obtain ⟨fuel, rfl⟩ : ∃ f, fuel = f + 1 := ⟨fuel - 1, by omega⟩
    refine ⟨a, v, l.elems, ?_, by simp [tree.elems]⟩
    simp [map.end_loop, get_r_eq hS.1]
  | node a2 c2 v2 l2 r2 _ ihr =>
    intro m par fuel a c v l hS hf
    obtain ⟨fuel, rfl⟩ : ∃ f, fuel = f + 1 := ⟨fuel - 1, by omega⟩
    simp only [tree.height] at hf
    obtain ⟨e, w, init, e1, e2⟩ := ihr m (some a) fuel a2 c2 v2 l2 hS.2.2 (by omega)
    refine ⟨e, w, l.elems ++ (a, v) :: init, ?_, ?_⟩
    · simp [map.end_loop, get_r_eq hS.1, e1]
    · rw [tree.elems, e2]; simp

end ft

namespace ft
open color_type
variable {K V : Type}

/-- Member `find_rec` on a sorted red-black subtree, with the comparator `less`: the node of the
key if there is one, no node otherwise. -/
theorem find_rec_spec [LinearOrder K] (k : K) {t : tree K V} {c0 : color_type} {n0 : Nat}
    (hb : Bal t c0 n0) : ∀ (m : map K V) (par : ptr) (fuel : Nat),
    Shaped m.mem par t → m._cmp_k = less → (ekeys t.elems).Pairwise (· < ·) →
    t.height < fuel →
    (∃ a v, map.find_rec fuel m t.top k = some (some a) ∧ (a, some (k, v)) ∈ t.elems) ∨
    (map.find_rec fuel m t.top k = some none ∧ k ∉ ekeys t.elems) := by
  have step : ∀ (a : Nat) (c : color_type) (x : K × V) (l r : tree K V),
      (∀ (m : map K V) (par : ptr) (fuel : Nat),
        Shaped m.mem par l → m._cmp_k = less → (ekeys l.elems).Pairwise (· < ·) →
        l.height < fuel →
        (∃ a v, map.find_rec fuel m l.top k = some (some a) ∧ (a, some (k, v)) ∈ l.elems) ∨
        (map.find_rec fuel m l.top k = some none ∧ k ∉ ekeys l.elems)) →
      (∀ (m : map K V) (par : ptr) (fuel : Nat),
        Shaped m.mem par r → m._cmp_k = less → (ekeys r.elems).Pairwise (· < ·) →
        r.height < fuel →
        (∃ a v, map.find_rec fuel m r.top k = some (some a) ∧ (a, some (k, v)) ∈ r.elems) ∨
        (map.find_rec fuel m r.top k = some none ∧ k ∉ ekeys r.elems)) →
      ∀ (m : map K V) (par : ptr) (fuel : Nat),
        Shaped m.mem par (.node a c (some x) l r) → m._cmp_k = less →
        (ekeys (tree.node a c (some x) l r).elems).Pairwise (· < ·) →
        (tree.node a c (some x) l r).height < fuel →
        (∃ b v, map.find_rec fuel m (tree.node a c (some x) l r).top k = some (some b) ∧
          (b, some (k, v)) ∈ (tree.node a c (some x) l r).elems) ∨
        (map.find_rec fuel m (tree.node a c (some x) l r).top k = some none ∧
          k ∉ ekeys (tree.node a c (some x) l r).elems) := by
    intro a c x l r ihl ihr m par fuel hS hcmp hs hf
    obtain ⟨fuel, rfl⟩ : ∃ f, fuel = f + 1 := ⟨fuel - 1, by omega⟩
    simp only [tree.height] at hf
    obtain ⟨hc, hl, hr⟩ := hS
    have hsp := sorted_split (A := l.elems) (B := r.elems) hs
    have hs2 := hs
    simp only [tree.elems, ekeys_append, ekeys_cons_some, List.pairwise_append,
      List.pairwise_cons] at hs2
    by_cases hk : k = x.1
    · left
      refine ⟨a, x.2, ?_, ?_⟩
      · simp [map.find_rec, get_val_eq hc, hk]
      · subst hk; simp [tree.elems]
    · by_cases hlt : k < x.1
      · have e : map.find_rec (fuel + 1) m (tree.node a c (some x) l r).top k =
            map.find_rec fuel m l.top k := by
          simp [map.find_rec, get_val_eq hc, hk, hcmp, less, hlt, get_l_eq hc]
        rw [e]
        rcases ihl m (some a) fuel hl hcmp hs2.1 (by omega) with ⟨b, v, e1, h1⟩ | ⟨e1, h1⟩
        · exact Or.inl ⟨b, v, e1, by simp [tree.elems, h1]⟩
        · refine Or.inr ⟨e1, ?_⟩
          simp only [tree.elems, ekeys_append, ekeys_cons_some, List.mem_append, List.mem_cons,
            not_or]
          exact ⟨h1, hk, fun h2 => lt_asymm hlt (hsp.2 k h2)⟩
      · have hgt : x.1 < k := lt_of_le_of_ne (not_lt.1 hlt) (Ne.symm hk)
        have e : map.find_rec (fuel + 1) m (tree.node a c (some x) l r).top k =
            map.find_rec fuel m r.top k := by
          simp [map.find_rec, get_val_eq hc, hk, hcmp, less, hlt, get_r_eq hc]
        rw [e]
        rcases ihr m (some a) fuel hr hcmp hs2.2.1.2 (by omega) with ⟨b, v, e1, h1⟩ | ⟨e1, h1⟩
        · exact Or.inl ⟨b, v, e1, by simp [tree.elems, h1]⟩
        · refine Or.inr ⟨e1, ?_⟩
          simp only [tree.elems, ekeys_append, ekeys_cons_some, List.mem_append, List.mem_cons,
            not_or]
          exact ⟨fun h2 => lt_asymm hgt (hsp.1 k h2), hk, h1⟩
  induction hb with
  | nil =>
    intro m par fuel _ _ _ hf
    obtain ⟨fuel, rfl⟩ : ∃ f, fuel = f + 1 := ⟨fuel - 1, by omega⟩
    exact Or.inr ⟨by simp [map.find_rec], by simp [tree.elems]⟩
  | sentinel a =>
    intro m par fuel hS _ _ hf
    obtain ⟨fuel, rfl⟩ : ∃ f, fuel = f + 1 := ⟨fuel - 1, by omega⟩
    exact Or.inr ⟨by simp [map.find_rec, get_val_eq hS.1], by simp [tree.elems]⟩
  | red _ _ ihl ihr => exact step _ _ _ _ _ ihl ihr
  | black _ _ ihl ihr => exact step _ _ _ _ _ ihl ihr

end ft

namespace ft
open color_type
variable {K V : Type}

/-! ### Observations of a represented tree -/

theorem inorder_rec_eq {mem : Nat → Option (node_type K V)} :
    ∀ (t : tree K V) (par : ptr) (fuel : Nat), Shaped mem par t → t.height ≤ fuel →
    map.inorder_rec fuel mem t.top = t.addrs := by
  intro t
  induction t with
  | nil =>
    intro par fuel _ _
    cases fuel <;> simp [map.inorder_rec]
  | node a c v l r ihl ihr =>
    intro par fuel hS hf
    obtain ⟨fuel, rfl⟩ : ∃ f, fuel = f + 1 := ⟨fuel - 1, by simp [tree.height] at hf; omega⟩
    simp only [tree.height] at hf
    simp only [tree.top_node, map.inorder_rec, hS.1, tree.addrs_node]
    rw [ihl (some a) fuel hS.2.1 (by omega), ihr (some a) fuel hS.2.2 (by omega)]

/-- The nodes that the in-order walk of a state visits are those of the tree it represents. -/
theorem Rep.nodes_eq {m : map K V} {T : tree K V} (h : Rep m T) : m.nodes = T.addrs := by
  have h1 := T.height_le
  have h2 := h.card_le
  rw [map.nodes, h.root]
  exact inorder_rec_eq T none m.brk h.shaped (by omega)

theorem Shaped.payload_at {mem : Nat → Option (node_type K V)} {par : ptr} {t : tree K V}
    (h : Shaped mem par t) {a : Nat} {v : Option (K × V)} (ha : (a, v) ∈ t.elems) :
    (mem a).bind (·.val) = v := by
  induction t generalizing par with
  | nil => simp [tree.elems] at ha
  | node b c w l r ihl ihr =>
    simp only [tree.elems, List.mem_append, List.mem_cons, Prod.mk.injEq] at ha
    rcases ha with h1 | ⟨rfl, rfl⟩ | h1
    · exact ihl h.2.1 h1
    · simp [h.1]
    · exact ihr h.2.2 h1

/-- The payload stored at the address of a node of the represented tree. -/
theorem Rep.payload_eq {m : map K V} {T : tree K V} (h : Rep m T) {a : Nat}
    {v : Option (K × V)} (ha : (a, v) ∈ T.elems) : m.payload a = v :=
  h.shaped.payload_at ha

theorem filterMap_payload {mem : Nat → Option (node_type K V)} :
    ∀ (es : List (Nat × Option (K × V))),
    (∀ e ∈ es, (mem e.1).bind (·.val) = e.2) →
    (es.map Prod.fst).filterMap (fun a => (mem a).bind (·.val)) = es.filterMap Prod.snd := by
  intro es
  induction es with
  | nil => intro _; rfl
  | cons e es ih =>
    intro h
    have h1 := h e (List.mem_cons_self _ _)
    have h2 := ih (fun e2 he2 => h e2 (List.mem_cons_of_mem _ he2))
    simp only [List.map_cons, List.filterMap_cons, h1, h2]

/-- The in-order sequence of pairs of a state is that of the tree it represents. -/
theorem Rep.to_list_eq {m : map K V} {T : tree K V} (h : Rep m T) : m.to_list = T.data := by
  rw [map.to_list, h.nodes_eq, tree.addrs, tree.data]
  exact filterMap_payload T.elems (fun e he => h.shaped.payload_at (a := e.1) (v := e.2) he)

/-- The keys of a state are those of the tree it represents. -/
theorem Rep.keys_eq {m : map K V} {T : tree K V} (h : Rep m T) : m.keys = ekeys T.elems := by
  rw [map.keys, h.to_list_eq]; rfl

theorem filter_payload {mem : Nat → Option (node_type K V)} :
    ∀ (es : List (Nat × Option (K × V))),
    (∀ e ∈ es, (mem e.1).bind (·.val) = e.2) →
    (es.map Prod.fst).filter (fun a => ((mem a).bind (·.val)).isSome) =
      (es.filter (fun e => e.2.isSome)).map Prod.fst := by
  intro es
  induction es with
  | nil => intro _; rfl
  | cons e es ih =>
    intro h
    have h1 := h e (List.mem_cons_self _ _)
    have h2 := ih (fun e2 he2 => h e2 (List.mem_cons_of_mem _ he2))
    simp only [List.map_cons, List.filter_cons, h1, h2]
    split <;> simp

/-- The data nodes of a state are the nodes of the represented tree that carry a payload. -/
theorem Rep.data_nodes_eq {m : map K V} {T : tree K V} (h : Rep m T) :
    m.data_nodes = (T.elems.filter (fun e => e.2.isSome)).map Prod.fst := by
  rw [map.data_nodes, h.nodes_eq, tree.addrs]
  exact filter_payload T.elems (fun e he => h.shaped.payload_at (a := e.1) (v := e.2) he)

/-- A node of a tree is at some position of it. -/
theorem tree.mem_decomp {t : tree K V} {p : Nat} {v : Option (K × V)} (h : (p, v) ∈ t.elems) :
    ∃ (q : List (frame K V)) (c : color_type) (L R : tree K V), t = fill q (.node p c v L R) := by
  induction t with
  | nil => simp [tree.elems] at h
  | node b c w l r ihl ihr =>
    simp only [tree.elems, List.mem_append, List.mem_cons, Prod.mk.injEq] at h
    rcases h with h1 | ⟨rfl, rfl⟩ | h1
    · obtain ⟨q, c2, L, R, e⟩ := ihl h1
      exact ⟨q ++ [.L b c w r], c2, L, R, by rw [fill_append, ← e]; rfl⟩
    · exact ⟨[], c, l, r, rfl⟩
    · obtain ⟨q, c2, L, R, e⟩ := ihr h1
      exact ⟨q ++ [.R b c w l], c2, L, R, by rw [fill_append, ← e]; rfl⟩

/-- Two trees that the same state represents are equal. -/
theorem Shaped.unique_tree {mem : Nat → Option (node_type K V)} :
    ∀ (t t2 : tree K V) (par : ptr), Shaped mem par t → Shaped mem par t2 → t.top = t2.top →
    t = t2 := by
  intro t
  induction t with
  | nil =>
    intro t2 par _ _ e
    cases t2 with
    | nil => rfl
    | node a c v l r => simp at e
  | node a c v l r ihl ihr =>
    intro t2 par h h2 e
    cases t2 with
    | nil => simp at e
    | node a2 c2 v2 l2 r2 =>
      simp only [tree.top_node, Option.some.injEq] at e
      subst e
      have e2 := h.1.symm.trans h2.1
      simp only [Option.some.injEq, node_type.mk.injEq] at e2
      obtain ⟨rfl, rfl, el, er, -⟩ := e2
      rw [ihl l2 (some a) h.2.1 h2.2.1 el, ihr r2 (some a) h.2.2 h2.2.2 er]

theorem Rep.unique {m : map K V} {T T2 : tree K V} (h : Rep m T) (h2 : Rep m T2) : T = T2 :=
  Shaped.unique_tree T T2 none h.shaped h2.shaped (h.root.symm.trans h2.root)

end ft

namespace ft
open color_type
variable {K V : Type} [LinearOrder K]

/-! ### The public members on states that satisfy the invariant -/

theorem Framed.sides_ne_nil {A B : List (Nat × Option (K × V))} {a : Nat} {x : K × V}
    (h : Framed (A ++ (a, some x) :: B)) : A ≠ [] ∧ B ≠ [] := by
  constructor
  · rintro rfl
    have := Framed.head_none h
    simp at this
  · rintro rfl
    have := Framed.last_none h
    simp at this

/-- Removing a data node from a framed sequence leaves a framed sequence. -/
theorem Framed.erase {A B : List (Nat × Option (K × V))} {a : Nat} {x : K × V}
    (h : Framed (A ++ (a, some x) :: B)) : Framed (A ++ B) := by
  obtain ⟨hA, hB⟩ := h.sides_ne_nil
  obtain ⟨lo, hi, mid, e1, hm⟩ := h
  cases A with
  | nil => exact absurd rfl hA
  | cons a0 A2 =>
    rcases List.eq_nil_or_concat B with rfl | ⟨B2, b1, rfl⟩
    · exact absurd rfl hB
    · simp only [List.cons_append, List.cons.injEq] at e1
      have e2 : (A2 ++ (a, some x) :: B2) ++ [b1] = mid ++ [(hi, none)] := by
        rw [← e1.2]; simp
      have e3 := List.append_inj' e2 rfl
      simp only [List.cons.injEq, and_true] at e3
      refine ⟨lo, hi, A2 ++ B2, ?_, ?_⟩
      · rw [e1.1, e3.2]; simp
      · intro e he
        apply hm e
        rw [← e3.1]
        simp only [List.mem_append, List.mem_cons] at he ⊢
        tauto

theorem skeleton_elems (a b : Nat) : (skeleton a b : tree K V).elems = [(a, none), (b, none)] := by
  simp [skeleton, tree.elems]

theorem InvT.framed {m : map K V} {T : tree K V} (h : InvT m T) : Framed T.elems := by
  rcases h.2.2 with ⟨-, a, b, rfl⟩ | ⟨hG, -⟩
  · exact ⟨a, b, [], by simp [skeleton_elems], by simp⟩
  · exact hG.framed

theorem InvT.sorted {m : map K V} {T : tree K V} (h : InvT m T) :
    (ekeys T.elems).Pairwise (· < ·) := by
  rcases h.2.2 with ⟨-, a, b, rfl⟩ | ⟨hG, -⟩
  · simp [skeleton_elems]
  · exact hG.sorted

theorem InvT.size_eq {m : map K V} {T : tree K V} (h : InvT m T) : m._sz = T.data.length := by
  rcases h.2.2 with ⟨hsz, a, b, rfl⟩ | ⟨-, hsz⟩
  · simp [hsz, tree.data, skeleton_elems]
  · exact hsz

theorem InvT.good {m : map K V} {T : tree K V} (h : InvT m T) (hsz : m._sz ≠ 0) : Good T := by
  rcases h.2.2 with ⟨h0, -⟩ | ⟨hG, -⟩
  · exact absurd h0 hsz
  · exact hG

/-- The state after `clear` satisfies the invariant. -/
theorem clear_inv {m : map K V} {T : tree K V} (h : InvT m T) :
    ∃ m2, m.clear = some m2 ∧ InvT m2 (skeleton m.brk (m.brk + 1)) ∧ m2.brk = m.brk + 2 ∧
      m2._sz = 0 := by
  obtain ⟨m2, e, r, b, s, c⟩ := clear_spec h.1
  exact ⟨m2, e, ⟨r, c.trans h.2.1, Or.inl ⟨s, _, _, rfl⟩⟩, b, s⟩

/-- The default-constructed map satisfies the invariant. -/
theorem default_inv :
    ∃ m : map K V, map.mk_default less = some m ∧ InvT m (skeleton 0 1) ∧ m.brk = 2 ∧
      m._sz = 0 := by
  obtain ⟨m, e, r, b, s, c⟩ := mk_default_spec (K := K) (V := V) less
  exact ⟨m, e, ⟨r, c, Or.inl ⟨s, _, _, rfl⟩⟩, b, s⟩

/-- Member `erase(iterator)` at a data node with at least two elements in the map. -/
theorem erase_node {m : map K V} {q : List (frame K V)} {p : Nat} {c : color_type} {x : K × V}
    {L R : tree K V} (hI : InvT m (fill q (.node p c (some x) L R))) (hsz : 2 ≤ m._sz) :
    ∃ m2 T2, m.erase (some p) = some m2 ∧ Rep m2 T2 ∧
      T2.elems = pbefore q ++ (L.elems ++ R.elems) ++ pafter q ∧
      (∃ n2, Bal T2 black n2) ∧ m2.brk = m.brk ∧ m2._sz = m._sz - 1 ∧
      m2._cmp_k = m._cmp_k := by
  have hR := hI.1
  have hG := hI.good (by omega)
  have hF := hG.framed
  have hdl : 2 ≤ (fill q (.node p c (some x) L R)).data.length := by
    rw [← hI.size_eq]; exact hsz
  obtain ⟨n0, hb⟩ := hG.bal
  have hbrk : 3 ≤ m.brk := by
    have h1 := hR.card_le
    have h2 : (fill q (.node p c (some x) L R)).addrs.length =
        (fill q (.node p c (some x) L R)).elems.length := by simp [tree.addrs]
    obtain ⟨lo, hi, mid, e, hm⟩ := hF
    have h3 : mid ≠ [] := by
      rintro rfl
      rw [tree.data, e] at hdl
      simp at hdl
    have h4 : 1 ≤ mid.length := List.length_pos.2 h3
    rw [h2, e] at h1
    simp at h1
    omega
  have hsimple : L = .nil ∨ R = .nil → ∃ m2 T2, m.erase (some p) = some m2 ∧ Rep m2 T2 ∧
      T2.elems = pbefore q ++ (L.elems ++ R.elems) ++ pafter q ∧
      (∃ n2, Bal T2 black n2) ∧ m2.brk = m.brk ∧ m2._sz = m._sz - 1 ∧
      m2._cmp_k = m._cmp_k := by
    intro hLR
    cases q with
    | nil =>
      exfalso
      simp only [fill_nil, tree.elems] at hF
      rcases hLR with rfl | rfl
      · have := Framed.head_none (by simpa [tree.elems] using hF : Framed ((p, some x) :: R.elems))
        simp at this
      · have := Framed.last_none (by simpa [tree.elems] using hF : Framed (L.elems ++ [(p, some x)]))
        simp at this
    | cons f q2 =>
      have hdp := Bal.data_path hb (by simp)
      obtain ⟨c2, n2, hbt, hpb⟩ := Bal.unfill hb hdp
      have hct : c = c2 := by simpa [tree.color] using hbt.color_eq
      subst hct
      exact remove_simple hR hLR hbt hpb hsz m.brk
  cases L with
  | nil => exact hsimple (Or.inl rfl)
  | node l cl vl ll lr =>
    cases R with
    | nil => exact hsimple (Or.inr rfl)
    | node r cr vr rl rr =>
      obtain ⟨fuel, hfuel⟩ : ∃ f, m.brk + 1 = f + 2 := ⟨m.brk - 1, by omega⟩
      rw [map.erase, hfuel]
      cases vr with
      | some xr => exact erase_two_succ hR hF hb hsz fuel
      | none => exact erase_two_pred hR hF hb hsz hdl fuel

/-- Member `erase(iterator)` at a data node: the node leaves the in-order sequence, all other
nodes stay, the invariant holds again; erasing the only element installs two new end nodes. -/
theorem erase_spec {m : map K V} {T : tree K V} (hI : InvT m T) {p : Nat} {x : K × V}
    (hp : (p, some x) ∈ T.elems) :
    ∃ m2 T2 pre post, m.erase (some p) = some m2 ∧ InvT m2 T2 ∧ m2._sz + 1 = m._sz ∧
      T.elems = pre ++ (p, some x) :: post ∧ T2.data = (pre ++ post).filterMap Prod.snd ∧
      (2 ≤ m._sz → T2.elems = pre ++ post ∧ m2.brk = m.brk) ∧
      (m._sz = 1 → T2 = skeleton m.brk (m.brk + 1) ∧ m2.brk = m.brk + 2) := by
  obtain ⟨q, c, L, R, rfl⟩ := tree.mem_decomp hp
  have hel : (fill q (.node p c (some x) L R)).elems =
      (pbefore q ++ L.elems) ++ (p, some x) :: (R.elems ++ pafter q) := by
    simp [fill_elems, tree.elems]
  have hsz := hI.size_eq
  have hpos : 1 ≤ m._sz := by
    rw [hsz, tree.data, hel]; simp; omega
  have hG := hI.good (by omega)
  by_cases h1 : m._sz = 1
  · obtain ⟨m2, e, i2, b, s⟩ := clear_inv hI
    refine ⟨m2, _, pbefore q ++ L.elems, R.elems ++ pafter q, ?_, i2, by omega, hel, ?_,
      fun h => by omega, fun _ => ⟨rfl, b⟩⟩
    · obtain ⟨fuel, hfuel⟩ : ∃ f, m.brk + 1 = f + 1 := ⟨m.brk, rfl⟩
      simp [map.erase, map.erase_rec, h1, e]
    · have h2 : (fill q (.node p c (some x) L R)).data.length = 1 := by omega
      rw [tree.data, hel] at h2
      simp only [List.filterMap_append, List.filterMap_cons, List.length_append,
        List.length_cons] at h2
      have h3 : ((pbefore q ++ L.elems).filterMap Prod.snd).length = 0 := by
        simp only [List.filterMap_append, List.length_append]; omega
      have h4 : ((R.elems ++ pafter q).filterMap Prod.snd).length = 0 := by
        simp only [List.filterMap_append, List.length_append]; omega
      rw [List.filterMap_append, List.length_eq_zero.1 h3, List.length_eq_zero.1 h4]
      simp [tree.data, skeleton_elems]
  · have h2 : 2 ≤ m._sz := by omega
    obtain ⟨m2, T2, e, r2, el, bl, b1, b2, b3⟩ := erase_node hI h2
    have el2 : T2.elems = (pbefore q ++ L.elems) ++ (R.elems ++ pafter q) := by
      rw [el]; simp
    have hd2 : T2.data.length + 1 = (fill q (.node p c (some x) L R)).data.length := by
      rw [tree.data, tree.data, el2, hel]; simp; omega
    refine ⟨m2, T2, pbefore q ++ L.elems, R.elems ++ pafter q, e, ⟨r2, b3.trans hI.2.1,
      Or.inr ⟨⟨?_, ?_, ?_, bl⟩, ?_⟩⟩, by omega, hel, by rw [tree.data, el2],
      fun _ => ⟨el2, b1⟩, fun h => absurd h h1⟩
    · rw [el2]; exact Framed.erase (hel ▸ hG.framed)
    · intro h0
      rw [h0] at hd2
      simp at hd2
      omega
    · have hs := hG.sorted
      rw [hel] at hs
      rw [el2]
      simp only [ekeys_append, ekeys_cons_some, List.pairwise_append, List.pairwise_cons,
        List.mem_cons, List.mem_append] at hs ⊢
      obtain ⟨h3, ⟨h4, h5⟩, h6⟩ := hs
      exact ⟨h3, h5, fun a ha b hb => h6 a ha b (Or.inr hb)⟩
    · omega

end ft

namespace ft
open color_type
variable {K V : Type} [LinearOrder K]

/-! ### `end`, `begin`, `find`, `erase(key)` and `operator[]` under the invariant -/

theorem Framed.two_le {es : List (Nat × Option (K × V))} (h : Framed es) : 2 ≤ es.length := by
  obtain ⟨lo, hi, mid, e, -⟩ := h
  rw [e]; simp

/-- Member `end()` returns the last node of the in-order sequence, the high end node. -/
theorem end_spec {m : map K V} {T : tree K V} (hI : InvT m T) :
    ∃ hi init, m.end_ = some (some hi) ∧ T.elems = init ++ [(hi, none)] := by
  have hF := hI.framed
  have hR := hI.1
  cases T with
  | nil => have := hF.two_le; simp [tree.elems] at this
  | node a c v l r =>
    have hfuel : r.height < m.brk + 1 := by
      have h1 := (tree.node a c v l r).height_le
      have h2 := hR.card_le
      simp only [tree.height] at h1
      omega
    obtain ⟨e, w, init, e1, e2⟩ := end_loop_spec r m none (m.brk + 1) a c v l hR.shaped hfuel
    rw [e2] at hF
    have hw := Framed.last_none hF
    subst hw
    exact ⟨e, init, by rw [map.end_, hR.root]; exact e1, e2⟩

/-- Member `begin()` on a non-empty map returns the first data node of the in-order sequence,
the node right after the low end node. -/
theorem begin_spec {m : map K V} {T : tree K V} (hI : InvT m T) (hsz : m._sz ≠ 0) :
    ∃ lo b xb rest, m.begin = some (some b) ∧ T.elems = (lo, none) :: (b, some xb) :: rest := by
  have hG := hI.good hsz
  have hR := hI.1
  obtain ⟨n0, hb⟩ := hG.bal
  have hF := hG.framed
  cases T with
  | nil => have := hF.two_le; simp [tree.elems] at this
  | node a c v l r =>
    cases v with
    | none =>
      cases hb
      have := hF.two_le
      simp [tree.elems] at this
    | some x =>
      obtain ⟨rs, b, cb, xb, bl, br, e, hL, hd, hbl⟩ := tree.leftmost_decomp l a c x r
      rw [e] at hR hb hF
      have hR2 : Rep m (fill (rs ++ []) (.node b cb (some xb) bl br)) := by simpa using hR
      have hlen : rs.length < m.brk + 1 := by
        have h3 := fill_length rs (.node b cb (some xb) bl br)
        have h4 := hR.card_le
        omega
      have hdesc := descend_l_spec hbl rs [] m (m.brk + 1) hR2 hL hd hlen
      have hbeg : m.begin = some (some b) := by
        rw [map.begin, if_neg hsz, hR.root]; exact hdesc
      have hel : (fill rs (.node b cb (some xb) bl br)).elems =
          bl.elems ++ (b, some xb) :: (br.elems ++ pafter rs) := by
        simp [fill_elems, tree.elems, hL.pbefore_nil]
      rw [e, hel]
      rw [hel] at hF
      rcases hbl with rfl | ⟨e1, ce, el, er, rfl⟩
      · have := Framed.head_none (by simpa [tree.elems] using hF :
          Framed ((b, some xb) :: (br.elems ++ pafter rs)))
        simp at this
      · have hb2 : Bal (fill (.L b cb (some xb) br :: rs) (.node e1 ce none el er)) black n0 := hb
        have hdp := Bal.data_path hb2 (by simp)
        obtain ⟨c2, n2, hbt, -⟩ := Bal.unfill hb2 hdp
        cases hbt
        exact ⟨e1, b, xb, br.elems ++ pafter rs, hbeg, by simp [tree.elems]⟩

/-- Member `begin()` on an empty map is `end()`. -/
theorem begin_empty {m : map K V} (hsz : m._sz = 0) : m.begin = m.end_ := by
  rw [map.begin, if_pos hsz]

/-- Member `find` returns the data node of the key if there is one and `end()` otherwise. -/
theorem find_spec {m : map K V} {T : tree K V} (hI : InvT m T) (k : K) :
    (∃ a v, m.find k = some (some a) ∧ (a, some (k, v)) ∈ T.elems) ∨
    (m.find k = m.end_ ∧ k ∉ ekeys T.elems) := by
  have hR := hI.1
  have hfuel : T.height < m.brk + 1 := by
    have h1 := T.height_le
    have h2 := hR.card_le
    omega
  rcases hI.2.2 with ⟨hsz, a, b, rfl⟩ | ⟨hG, hsz⟩
  · right
    have hc := Rep.cell (p := []) hR
    refine ⟨?_, by simp [skeleton_elems]⟩
    simp [map.find, hR.root, skeleton, map.find_rec, get_val_eq hc]
  · obtain ⟨n0, hb⟩ := hG.bal
    rcases find_rec_spec k hb m none (m.brk + 1) hR.shaped hI.2.1 hG.sorted hfuel with
      ⟨a, v, e, hmem⟩ | ⟨e, hk⟩
    · left
      refine ⟨a, v, ?_, hmem⟩
      rw [← hR.root] at e
      simp [map.find, e]
    · right
      refine ⟨?_, hk⟩
      rw [← hR.root] at e
      simp [map.find, e]

/-- A data node is not the node that `end()` returns. -/
theorem data_ne_end {m : map K V} {T : tree K V} (hR : Rep m T) {a hi : Nat} {x : K × V}
    {init : List (Nat × Option (K × V))} (ha : (a, some x) ∈ T.elems)
    (hT : T.elems = init ++ [(hi, none)]) : a ≠ hi := by
  rintro rfl
  have h1 := hR.payload_eq ha
  have h2 := hR.payload_eq (a := a) (v := none) (by rw [hT]; simp)
  rw [h1] at h2
  simp at h2

/-- Member `erase(key)`: an absent key leaves the state as it is and returns `0`; a present
key has its node erased and returns `1`. -/
theorem erase_key_spec {m : map K V} {T : tree K V} (hI : InvT m T) (k : K) :
    (k ∉ ekeys T.elems ∧ m.erase_key k = some (m, 0)) ∨
    (∃ a v m2, (a, some (k, v)) ∈ T.elems ∧ m.erase_key k = some (m2, 1) ∧
      m.erase (some a) = some m2) := by
  obtain ⟨hi, init, e1, e2⟩ := end_spec hI
  rcases find_spec hI k with ⟨a, v, e, hmem⟩ | ⟨e, hk⟩
  · right
    obtain ⟨m2, T2, pre, post, e3, -⟩ := erase_spec hI hmem
    refine ⟨a, v, m2, hmem, ?_, e3⟩
    have hne := data_ne_end hI.1 hmem e2
    simp [map.erase_key, e, e1, hne, e3]
  · left
    refine ⟨hk, ?_⟩
    simp [map.erase_key, e, e1]

/-- Member `count`. -/
theorem count_spec {m : map K V} {T : tree K V} (hI : InvT m T) (k : K) :
    m.count k = some (if k ∈ ekeys T.elems then 1 else 0) := by
  obtain ⟨hi, init, e1, e2⟩ := end_spec hI
  rcases find_spec hI k with ⟨a, v, e, hmem⟩ | ⟨e, hk⟩
  · have hne := data_ne_end hI.1 hmem e2
    have hk : k ∈ ekeys T.elems := by
      simp only [ekeys, List.mem_map, List.mem_filterMap]
      exact ⟨(k, v), ⟨(a, some (k, v)), hmem, rfl⟩, rfl⟩
    simp [map.count, e, e1, hne, hk]
  · simp [map.count, e, e1, hk]

/-- Member `operator[]`: a present key is found and nothing changes; an absent key is inserted
with the default value. -/
theorem index_spec [Inhabited V] {m : map K V} {T : tree K V} (hI : InvT m T) (k : K) :
    (∃ a v, (a, some (k, v)) ∈ T.elems ∧ m.index k = some (m, some a)) ∨
    (∃ m2 T2 pre post, m.index k = some (m2, some m.brk) ∧
      m.insert (k, default) = some (m2, some m.brk, true) ∧ InvT m2 T2 ∧
      m2._sz = m._sz + 1 ∧ m2.brk = m.brk + 1 ∧ T.elems = pre ++ post ∧
      T2.elems = pre ++ (m.brk, some (k, default)) :: post ∧ KeysLt pre k ∧ KeysGt post k) := by
  rcases insert_spec hI (k, default) with ⟨a, v, hmem, e⟩ | ⟨m2, T2, pre, post, e, i2, r⟩
  · left
    refine ⟨a, v, hmem, ?_⟩
    have hp := hI.1.payload_eq hmem
    cases hc : m.mem a with
    | none => simp [map.payload, hc] at hp
    | some n =>
      simp only [map.payload, hc, Option.some_bind] at hp
      simp [map.index, e, get_val_eq hc, hp]
  · right
    refine ⟨m2, T2, pre, post, ?_, e, i2, r⟩
    have hmem : (m.brk, some (k, default)) ∈ T2.elems := by rw [r.2.2.2.1]; simp
    have hp := i2.1.payload_eq hmem
    cases hc : m2.mem m.brk with
    | none => simp [map.payload, hc] at hp
    | some n =>
      simp only [map.payload, hc, Option.some_bind] at hp
      simp [map.index, e, get_val_eq hc, hp]

end ft

namespace ft
open color_type
variable {K V : Type} [LinearOrder K]

/-! ### Reachable states satisfy the invariant -/

/-- A data node of a state is a node of the represented tree with a payload. -/
theorem Rep.mem_data_nodes {m : map K V} {T : tree K V} (h : Rep m T) {a : Nat} :
    a ∈ m.data_nodes ↔ ∃ x, (a, some x) ∈ T.elems := by
  rw [h.data_nodes_eq]
  simp only [List.mem_map, List.mem_filter]
  constructor
  · rintro ⟨⟨b, v⟩, ⟨hm, hv⟩, rfl⟩
    cases v with
    | none => simp at hv
    | some x => exact ⟨x, hm⟩
  · rintro ⟨x, hx⟩
    exact ⟨(a, some x), ⟨hx, rfl⟩, rfl⟩

/-- Every reachable state satisfies the representation invariant. -/
theorem Reachable.inv [Inhabited V] {m : map K V} (h : Reachable m) : Inv m := by
  induction h with
  | ctor e =>
    obtain ⟨m2, e2, i2, -⟩ := default_inv (K := K) (V := V)
    rw [e] at e2
    cases e2
    exact ⟨_, i2⟩
  | insert _ e ih =>
    obtain ⟨T, hI⟩ := ih
    rcases insert_spec hI _ with ⟨a, v, -, e2⟩ | ⟨m3, T3, pre, post, e2, i3, -⟩
    · rw [e] at e2; cases e2; exact ⟨T, hI⟩
    · rw [e] at e2; cases e2; exact ⟨T3, i3⟩
  | index _ e ih =>
    obtain ⟨T, hI⟩ := ih
    rcases index_spec hI _ with ⟨a, v, -, e2⟩ | ⟨m3, T3, pre, post, e2, -, i3, -⟩
    · rw [e] at e2; cases e2; exact ⟨T, hI⟩
    · rw [e] at e2; cases e2; exact ⟨T3, i3⟩
  | erase _ ha e ih =>
    obtain ⟨T, hI⟩ := ih
    obtain ⟨x, hx⟩ := hI.1.mem_data_nodes.1 ha
    obtain ⟨m3, T3, pre, post, e2, i3, -⟩ := erase_spec hI hx
    rw [e] at e2; cases e2; exact ⟨T3, i3⟩
  | erase_key _ e ih =>
    obtain ⟨T, hI⟩ := ih
    rcases erase_key_spec hI _ with ⟨-, e2⟩ | ⟨a, v, m3, hx, e2, e3⟩
    · rw [e] at e2; cases e2; exact ⟨T, hI⟩
    · rw [e] at e2; cases e2
      obtain ⟨m4, T4, pre, post, e4, i4, -⟩ := erase_spec hI hx
      rw [e3] at e4; cases e4; exact ⟨T4, i4⟩
  | clear _ e ih =>
    obtain ⟨T, hI⟩ := ih
    obtain ⟨m3, e2, i3, -⟩ := clear_inv hI
    rw [e] at e2; cases e2; exact ⟨_, i3⟩

/-- The states that `build` returns are reachable. -/
theorem reachable_insert_seq [Inhabited V] : ∀ (xs : List (K × V)) (m m2 : map K V),
    Reachable m → map.insert_seq m xs = some m2 → Reachable m2 := by
  intro xs
  induction xs with
  | nil =>
    intro m m2 h e
    simp only [map.insert_seq, Option.some.injEq] at e
    exact e ▸ h
  | cons x xs ih =>
    intro m m2 h e
    simp only [map.insert_seq] at e
    cases hr : m.insert x with
    | none => simp [hr] at e
    | some r =>
      obtain ⟨m3, it, b⟩ := r
      simp only [hr] at e
      exact ih m3 m2 (Reachable.insert h hr) e

theorem reachable_build [Inhabited V] (xs : List (K × V)) {m : map K V}
    (e : map.build less xs = some m) : Reachable m := by
  simp only [map.build] at e
  cases h0 : map.mk_default (K := K) (V := V) less with
  | none => simp [h0] at e
  | some m0 =>
    simp only [h0, Option.some_bind] at e
    exact reachable_insert_seq xs m0 m (Reachable.ctor h0) e

set_option maxRecDepth 100000 in
/-- The sample state is reachable. -/
theorem reachable_sample7 : Reachable sample7 :=
  reachable_build [(5, 50), (3, 30), (8, 80), (1, 10), (4, 40), (7, 70), (9, 90)]
    (by rfl)

end ft

namespace ft
open color_type
variable {K V : Type} [LinearOrder K]

/-! ### Consequences of the invariant for the observations -/

theorem mem_ekeys {es : List (Nat × Option (K × V))} {k : K} :
    k ∈ ekeys es ↔ ∃ a v, (a, some (k, v)) ∈ es := by
  simp only [ekeys, List.mem_map, List.mem_filterMap]
  constructor
  · rintro ⟨⟨k2, v⟩, ⟨⟨a, w⟩, hm, hw⟩, rfl⟩
    simp only at hw
    subst hw
    exact ⟨a, v, hm⟩
  · rintro ⟨a, v, hm⟩
    exact ⟨(k, v), ⟨(a, some (k, v)), hm, rfl⟩, rfl⟩

theorem ekeys_eq_map (es : List (Nat × Option (K × V))) :
    ekeys es = (es.filterMap Prod.snd).map Prod.fst := rfl

/-- A key that is smaller than the keys after it and larger than those before it is not in
the sequence. -/
theorem not_mem_of_split {pre post : List (Nat × Option (K × V))} {k : K}
    (h1 : KeysLt pre k) (h2 : KeysGt post k) : k ∉ ekeys (pre ++ post) := by
  rw [ekeys_append, List.mem_append]
  rintro (h | h)
  · exact lt_irrefl _ (h1 k h)
  · exact lt_irrefl _ (h2 k h)

/-- In a sorted sequence a key occurs once. -/
theorem not_mem_of_sorted {pre post : List (Nat × Option (K × V))} {a : Nat} {x : K × V}
    (h : (ekeys (pre ++ (a, some x) :: post)).Pairwise (· < ·)) :
    x.1 ∉ ekeys (pre ++ post) := by
  obtain ⟨h1, h2⟩ := sorted_split h
  exact not_mem_of_split h1 h2

/-- The nodes of a tree occur once, so a node has one payload. -/
theorem Rep.elems_unique {m : map K V} {T : tree K V} (h : Rep m T) {a : Nat}
    {v w : Option (K × V)} (h1 : (a, v) ∈ T.elems) (h2 : (a, w) ∈ T.elems) : v = w := by
  rw [← h.payload_eq h1, ← h.payload_eq h2]

/-- The position of a node in the in-order sequence is determined by its address. -/
theorem split_unique {es pre post pre2 post2 : List (Nat × Option (K × V))}
    {a : Nat} {v w : Option (K × V)} (hn : (es.map Prod.fst).Nodup)
    (h1 : es = pre ++ (a, v) :: post) (h2 : es = pre2 ++ (a, w) :: post2) :
    pre = pre2 ∧ post = post2 := by
  subst h1
  induction pre generalizing pre2 with
  | nil =>
    cases pre2 with
    | nil =>
      simp only [List.nil_append, List.cons.injEq] at h2
      exact ⟨rfl, h2.2⟩
    | cons e pre3 =>
      exfalso
      simp only [List.nil_append, List.cons_append, List.cons.injEq] at h2
      obtain ⟨rfl, h3⟩ := h2
      rw [h3] at hn
      simp at hn
  | cons e pre ih =>
    cases pre2 with
    | nil =>
      exfalso
      simp only [List.nil_append, List.cons_append, List.cons.injEq] at h2
      obtain ⟨rfl, h3⟩ := h2
      simp at hn
    | cons e2 pre3 =>
      simp only [List.cons_append, List.cons.injEq] at h2
      obtain ⟨rfl, h3⟩ := h2
      have hn2 : ((pre ++ (a, v) :: post).map Prod.fst).Nodup := by
        simp only [List.cons_append, List.map_cons, List.nodup_cons] at hn
        exact hn.2
      obtain ⟨e1, e2⟩ := ih hn2 h3
      exact ⟨by rw [e1], e2⟩

end ft

namespace ft
open color_type
variable {K V : Type} [LinearOrder K]

/-- Member `erase(iterator)` at a data node, in terms of the observations of the state. -/
theorem erase_data_node {m : map K V} {T : tree K V} (hI : InvT m T) {a : Nat} {k : K} {v : V}
    (ha : a ∈ m.data_nodes) (hp : m.payload a = some (k, v)) :
    ∃ m2 pre post, m.erase (some a) = some m2 ∧ m.to_list = pre ++ (k, v) :: post ∧
      m2.to_list = pre ++ post ∧ m2.size + 1 = m.size ∧ k ∉ m2.keys ∧
      m2.find k = m2.end_ := by
  obtain ⟨x, hx⟩ := hI.1.mem_data_nodes.1 ha
  have hx2 := hI.1.payload_eq hx
  rw [hp] at hx2
  simp only [Option.some.injEq] at hx2
  subst hx2
  obtain ⟨m2, T2, pre, post, e, i2, hsz, hT, hd, -⟩ := erase_spec hI hx
  have hk : k ∉ ekeys T2.elems := by
    have hs := hI.sorted
    rw [hT] at hs
    have := not_mem_of_sorted hs
    rw [ekeys_eq_map, ← tree.data, hd]
    exact this
  refine ⟨m2, pre.filterMap Prod.snd, post.filterMap Prod.snd, e, ?_, ?_, hsz, ?_, ?_⟩
  · rw [hI.1.to_list_eq, tree.data, hT, List.filterMap_append]; rfl
  · rw [i2.1.to_list_eq, hd, List.filterMap_append]
  · rw [i2.1.keys_eq]; exact hk
  · rcases find_spec i2 k with ⟨b, w, -, hmem⟩ | ⟨e2, -⟩
    · exact absurd (mem_ekeys.2 ⟨b, w, hmem⟩) hk
    · exact e2

end ft

namespace ft
open color_type
variable {K V : Type}

/-! ### Height and black height -/

theorem tree.dheight_le_height (t : tree K V) : t.dheight ≤ t.height := by
  induction t with
  | nil => simp [tree.dheight]
  | node a c v l r ihl ihr =>
    cases v with
    | none => simp [tree.dheight]
    | some x => simp only [tree.dheight, tree.height]; omega

theorem height_rec_eq {mem : Nat → Option (node_type K V)} :
    ∀ (t : tree K V) (par : ptr) (fuel : Nat), Shaped mem par t → t.height ≤ fuel →
    height_rec fuel mem t.top = t.dheight := by
  intro t
  induction t with
  | nil =>
    intro par fuel _ _
    cases fuel <;> simp [height_rec, tree.dheight]
  | node a c v l r ihl ihr =>
    intro par fuel hS hf
    obtain ⟨fuel, rfl⟩ : ∃ f, fuel = f + 1 := ⟨fuel - 1, by simp [tree.height] at hf; omega⟩
    simp only [tree.height] at hf
    cases v with
    | none => simp [height_rec, hS.1, tree.dheight]
    | some x =>
      simp only [tree.top_node, height_rec, hS.1, tree.dheight, Option.isSome_some, if_true]
      rw [ihl (some a) fuel hS.2.1 (by omega), ihr (some a) fuel hS.2.2 (by omega)]

/-- The height of a state is that of the tree it represents. -/
theorem Rep.height_eq {m : map K V} {T : tree K V} (h : Rep m T) : m.height = T.dheight := by
  have h1 := T.height_le
  have h2 := h.card_le
  rw [map.height, h.root]
  exact height_rec_eq T none m.brk h.shaped (by omega)

/-- A red-black subtree of black height `n` is at most `2 n` data nodes high (one more if its
root is red) and has at least `2 ^ n - 1` data nodes. -/
theorem Bal.dheight_le {t : tree K V} {c : color_type} {n : Nat} (h : Bal t c n) :
    t.dheight ≤ 2 * n + (if c = color_type.red then 1 else 0) ∧ 2 ^ n ≤ t.data.length + 1 := by
  induction h with
  | nil => simp [tree.dheight, tree.data, tree.elems]
  | sentinel a => simp [tree.dheight, tree.data, tree.elems]
  | red hl hr ihl ihr =>
    simp only [reduceCtorEq, if_false, if_true, Nat.add_zero] at ihl ihr ⊢
    refine ⟨by simp only [tree.dheight]; omega, ?_⟩
    simp only [tree.data, tree.elems, List.filterMap_append, List.filterMap_cons,
      List.length_append, List.length_cons] at ihl ihr ⊢
    omega
  | @black a x l r c1 c2 n hl hr ihl ihr =>
    simp only [reduceCtorEq, if_false, Nat.add_zero] at ihl ihr ⊢
    constructor
    · simp only [tree.dheight]
      have h1 : l.dheight ≤ 2 * n + 1 := by
        have := ihl.1; split at this <;> omega
      have h2 : r.dheight ≤ 2 * n + 1 := by
        have := ihr.1; split at this <;> omega
      omega
    · simp only [tree.data, tree.elems, List.filterMap_append, List.filterMap_cons,
        List.length_append, List.length_cons] at ihl ihr ⊢
      have := ihl.2
      have := ihr.2
      rw [pow_succ]
      omega

theorem black_counts_rec_eq {mem : Nat → Option (node_type K V)} :
    ∀ (t : tree K V) (par : ptr) (fuel : Nat), Shaped mem par t → t.height < fuel →
    black_counts_rec fuel mem t.top = t.black_counts := by
  intro t
  induction t with
  | nil =>
    intro par fuel _ hf
    obtain ⟨fuel, rfl⟩ : ∃ f, fuel = f + 1 := ⟨fuel - 1, by omega⟩
    simp [black_counts_rec, tree.black_counts]
  | node a c v l r ihl ihr =>
    intro par fuel hS hf
    obtain ⟨fuel, rfl⟩ : ∃ f, fuel = f + 1 := ⟨fuel - 1, by omega⟩
    simp only [tree.height] at hf
    cases v with
    | none => simp [black_counts_rec, hS.1, tree.black_counts]
    | some x =>
      simp only [tree.top_node, black_counts_rec, hS.1, tree.black_counts, Option.isSome_some,
        if_true]
      rw [ihl (some a) fuel hS.2.1 (by omega), ihr (some a) fuel hS.2.2 (by omega)]

/-- All downward paths of a red-black subtree of black height `n` pass `n` black data nodes. -/
theorem Bal.black_counts_eq {t : tree K V} {c : color_type} {n : Nat} (h : Bal t c n) :
    t.black_counts ≠ [] ∧ ∀ k ∈ t.black_counts, k = n := by
  induction h with
  | nil => simp [tree.black_counts]
  | sentinel a => simp [tree.black_counts]
  | red hl hr ihl ihr =>
    simp only [tree.black_counts, reduceCtorEq, if_false, List.map_id', ne_eq,
      List.append_eq_nil, not_and, List.mem_append]
    refine ⟨fun h => absurd h ihl.1, ?_⟩
    rintro k (hk | hk)
    · exact ihl.2 k hk
    · exact ihr.2 k hk
  | black hl hr ihl ihr =>
    simp only [tree.black_counts, if_true, ne_eq, List.map_eq_nil_iff, List.append_eq_nil,
      not_and, List.mem_map, List.mem_append]
    refine ⟨fun h => absurd h ihl.1, ?_⟩
    rintro k ⟨k2, hk | hk, rfl⟩
    · rw [ihl.2 k2 hk]
    · rw [ihr.2 k2 hk]

/-- The subtree below a node of a represented tree is held by the memory, and it is lower than
the number of allocated addresses. -/
theorem Rep.subtree {m : map K V} {q : List (frame K V)} {t : tree K V} (h : Rep m (fill q t)) :
    Shaped m.mem (ptop q) t ∧ t.height < m.brk + 1 := by
  refine ⟨(shaped_fill.1 h.shaped).2, ?_⟩
  have h1 := t.height_le
  have h2 := fill_length q t
  have h3 := h.card_le
  omega

section order
variable [LinearOrder K]

/-- The subtree below a data node of a tree that satisfies the invariant is red-black. -/
theorem InvT.bal_at {m : map K V} {q : List (frame K V)} {a : Nat} {c : color_type} {x : K × V}
    {L R : tree K V} (hI : InvT m (fill q (.node a c (some x) L R))) :
    ∃ n, Bal (.node a c (some x) L R) c n ∧ PathBal q c n := by
  have hsz : m._sz ≠ 0 := by
    rcases hI.2.2 with ⟨-, a2, b2, e⟩ | ⟨-, hsz⟩
    · exfalso
      have h1 := congrArg tree.elems e
      have h2 : (a, some x) ∈ (fill q (.node a c (some x) L R)).elems := by
        simp [fill_elems, tree.elems]
      rw [h1, skeleton_elems] at h2
      simp at h2
    · rw [hsz, tree.data, fill_elems]
      simp [tree.elems]
  obtain ⟨n0, hb⟩ := (hI.good hsz).bal
  have hdp := Bal.data_path hb (by simp)
  obtain ⟨c2, n2, hbt, hpb⟩ := Bal.unfill hb hdp
  have hct : c = c2 := by simpa [tree.color] using hbt.color_eq
  subst hct
  exact ⟨n2, hbt, hpb⟩

/-- The height of a state that satisfies the invariant is logarithmic in its size. -/
theorem InvT.height_bound {m : map K V} {T : tree K V} (hI : InvT m T) :
    2 ^ m.height ≤ (m._sz + 1) ^ 2 := by
  rw [hI.1.height_eq, hI.size_eq]
  rcases hI.2.2 with ⟨-, a, b, rfl⟩ | ⟨hG, -⟩
  · simp [skeleton, tree.dheight, tree.data, tree.elems]
  · obtain ⟨n, hb⟩ := hG.bal
    obtain ⟨h1, h2⟩ := hb.dheight_le
    simp only [reduceCtorEq, if_false, Nat.add_zero] at h1
    calc 2 ^ T.dheight ≤ 2 ^ (2 * n) := Nat.pow_le_pow_right (by omega) h1
      _ = (2 ^ n) ^ 2 := by rw [Nat.mul_comm, pow_mul]
      _ ≤ (T.data.length + 1) ^ 2 := Nat.pow_le_pow_left h2 2

end order

end ft

namespace ft
open color_type
variable {K V : Type} [LinearOrder K]

/-! ### The neighbour that `erase` selects, and the effect of `_swap_nodes` on it -/

/-- The neighbour selected for a node whose right child is a data node: the leftmost node of the
right subtree, which has no left child. -/
theorem neighbour_succ {m : map K V} {q : List (frame K V)} {p l r : Nat}
    {cP cl cr : color_type} {x xr : K × V} {vl : Option (K × V)} {ll lr rl rr : tree K V}
    (h : Rep m (fill q (.node p cP (some x) (.node l cl vl ll lr) (.node r cr (some xr) rl rr))))
    (hF : Framed (fill q (.node p cP (some x) (.node l cl vl ll lr)
      (.node r cr (some xr) rl rr))).elems) :
    ∃ rs t ct xt TR, tree.node r cr (some xr) rl rr = fill rs (.node t ct (some xt) .nil TR) ∧
      AllL rs ∧ (∀ f ∈ rs, f.val ≠ none) ∧ map.erase_neighbour m (some p) = some (some t) := by
  have hc := Rep.cell h
  have hcr := Rep.cell (p := .R p cP (some x) (.node l cl vl ll lr) :: q) h
  obtain ⟨rs, t, ct, xt, tl, TR, e, hL, hd, htl⟩ := tree.leftmost_decomp rl r cr xr rr
  have hun : map.erase_neighbour m (some p) = map.descend_l (m.brk + 1) m (some r) := by
    simp [map.erase_neighbour, get_l_eq hc, get_r_eq hc, get_val_eq hcr]
  rw [hun]
  rw [e] at h hF
  have htl2 : tl = .nil := by
    rcases htl with rfl | ⟨e1, ce, el, er, rfl⟩
    · rfl
    · exfalso
      refine Framed.no_inner_end (e := e1)
        (A := pbefore q ++ (tree.node l cl vl ll lr).elems ++ [(p, some x)] ++ el.elems)
        (B := er.elems ++ (t, some xt) :: TR.elems ++ pafter rs ++ pafter q) ?_ (by simp)
        (by simp)
      have e2 : (fill q (.node p cP (some x) (.node l cl vl ll lr)
          (fill rs (.node t ct (some xt) (.node e1 ce none el er) TR)))).elems =
          pbefore q ++ (tree.node l cl vl ll lr).elems ++ [(p, some x)] ++ el.elems ++
            (e1, none) :: (er.elems ++ (t, some xt) :: TR.elems ++ pafter rs ++ pafter q) := by
        simp [fill_elems, tree.elems, hL.pbefore_nil]
      rw [← e2]; exact hF
  subst htl2
  have h2 : Rep m (fill (rs ++ .R p cP (some x) (.node l cl vl ll lr) :: q)
      (.node t ct (some xt) .nil TR)) := by
    rw [fill_append]; exact h
  have hlen : rs.length < m.brk + 1 := by
    have h3 := fill_length (rs ++ .R p cP (some x) (.node l cl vl ll lr) :: q)
      (.node t ct (some xt) .nil TR)
    have h4 := h2.card_le
    simp only [List.length_append] at h3
    omega
  have hdesc := descend_l_spec (Or.inl rfl) rs (.R p cP (some x) (.node l cl vl ll lr) :: q) m
    (m.brk + 1) h2 hL hd hlen
  rw [← e] at hdesc
  exact ⟨rs, t, ct, xt, TR, e, hL, hd, hdesc⟩

/-- The neighbour selected for a node whose right child is the high end node: the left child,
a data node without right child. -/
theorem neighbour_pred {m : map K V} {q : List (frame K V)} {p l r : Nat}
    {cP cl cr : color_type} {x : K × V} {vl : Option (K × V)} {ll lr rl rr : tree K V}
    {c0 : color_type} {n0 : Nat}
    (h : Rep m (fill q (.node p cP (some x) (.node l cl vl ll lr) (.node r cr none rl rr))))
    (hF : Framed (fill q (.node p cP (some x) (.node l cl vl ll lr)
      (.node r cr none rl rr))).elems)
    (hb : Bal (fill q (.node p cP (some x) (.node l cl vl ll lr) (.node r cr none rl rr)))
      c0 n0)
    (hdl : 2 ≤ (fill q (.node p cP (some x) (.node l cl vl ll lr)
      (.node r cr none rl rr))).data.length) :
    ∃ xl, vl = some xl ∧ lr = .nil ∧ rl = .nil ∧ rr = .nil ∧
      map.erase_neighbour m (some p) = some (some l) := by
  have hc := Rep.cell h
  have hcr := Rep.cell (p := .R p cP (some x) (.node l cl vl ll lr) :: q) h
  have hcl := Rep.cell (p := .L p cP (some x) (.node r cr none rl rr) :: q) h
  have hun : map.erase_neighbour m (some p) = map.descend_r (m.brk + 1) m (some l) := by
    simp [map.erase_neighbour, get_l_eq hc, get_r_eq hc, get_val_eq hcr]
  rw [hun]
  have hdq := Bal.data_path hb (by simp)
  obtain ⟨c, n, hbp, hpq⟩ := Bal.unfill hb hdq
  have key : ∃ c1, Bal (.node l cl vl ll lr) c1 0 ∧ rl = .nil ∧ rr = .nil := by
    cases hbp with
    | red hl hr => cases hr; exact ⟨_, hl, rfl, rfl⟩
    | black hl hr => cases hr; exact ⟨_, hl, rfl, rfl⟩
  obtain ⟨c1, hbl, rfl, rfl⟩ := key
  have hel : (fill q (.node p cP (some x) (.node l cl vl ll lr) (.node r cr none .nil .nil))).elems
      = pbefore q ++ ll.elems ++ (l, vl) :: (lr.elems ++ (p, some x) :: (r, none) :: pafter q) := by
    simp [fill_elems, tree.elems]
  have key2 : ∃ xl, vl = some xl ∧ lr = .nil := by
    cases hbl with
    | sentinel =>
      exfalso
      simp only [tree.elems, List.append_nil, List.nil_append] at hel
      rw [hel] at hF
      have h1 : pbefore q = [] := by
        by_contra hne
        exact Framed.no_inner_end hF hne (by simp)
      have h2 : pafter q = [] := by
        by_contra hne
        have hF2 : Framed ((pbefore q ++ (l, none) :: [(p, some x)]) ++ (r, none) :: pafter q) := by
          simpa using hF
        exact Framed.no_inner_end hF2 (by simp) hne
      simp [tree.data, hel, h1, h2] at hdl
    | @red _ xl _ _ _ hl hr =>
      refine ⟨xl, rfl, ?_⟩
      rcases hr.height_zero with rfl | ⟨a, rfl⟩ | ⟨a, y, l2, r2, rfl, -, -⟩
      · rfl
      · exfalso
        simp only [tree.elems, List.append_nil, List.nil_append] at hel
        rw [hel] at hF
        have hF2 : Framed ((pbefore q ++ ll.elems ++ [(l, some xl)]) ++ (a, none) ::
            ((p, some x) :: (r, none) :: pafter q)) := by
          simpa using hF
        exact Framed.no_inner_end hF2 (by simp) (by simp)
      · cases hr
  obtain ⟨xl, rfl, rfl⟩ := key2
  refine ⟨xl, rfl, rfl, rfl, rfl, ?_⟩
  simp [map.descend_r, get_r_eq hcl, tree.top]

/-- The nodes of two trees that list the same nodes have the same payloads in the states that
represent them. -/
theorem payload_of_perm {m m2 : map K V} {T T2 : tree K V} (h : Rep m T) (h2 : Rep m2 T2)
    (hp : ∀ e, e ∈ T2.elems ↔ e ∈ T.elems) {b : Nat} (hb : b ∈ m.nodes) :
    b ∈ m2.nodes ∧ m2.payload b = m.payload b := by
  rw [h.nodes_eq, tree.addrs, List.mem_map] at hb
  obtain ⟨⟨b2, v⟩, hmem, rfl⟩ := hb
  have hmem2 := (hp _).2 hmem
  refine ⟨?_, ?_⟩
  · rw [h2.nodes_eq, tree.addrs, List.mem_map]
    exact ⟨_, hmem2, rfl⟩
  · rw [h.payload_eq hmem, h2.payload_eq hmem2]

/-- Member `_swap_nodes` as `erase(iterator)` calls it, on a state that satisfies the invariant
and has at least two elements: the node and its neighbour exchange their places and colours
in the tree and keep their payloads. -/
theorem swap_nodes_spec {m : map K V} {T : tree K V} (hI : InvT m T) (hsz : 2 ≤ m._sz)
    {p : Nat} {n : node_type K V} (hn : m.mem p = some n) (hp : p ∈ m.data_nodes)
    (hl : n.l ≠ none) (hr : n.r ≠ none) :
    ∃ (t : Nat) (m2 : map K V) (T2 : tree K V) (q : List (frame K V)),
      map.erase_neighbour m (some p) = some (some t) ∧ t ∈ m.data_nodes ∧ t ≠ p ∧
      map._swap_nodes m (some p) (some t) = some m2 ∧ Rep m2 T2 ∧
      ((∃ rs cP ct xP xt A TR, AllL rs ∧
          T = fill (rs ++ .R p cP (some xP) A :: q) (.node t ct (some xt) .nil TR) ∧
          T2 = fill (rs ++ .R t cP (some xt) A :: q) (.node p ct (some xP) .nil TR)) ∨
        (∃ cP ct xP xt A B,
          T = fill q (.node p cP (some xP) (.node t ct (some xt) A .nil) B) ∧
          T2 = fill q (.node t cP (some xt) (.node p ct (some xP) A .nil) B))) ∧
      (∀ b ∈ m.nodes, b ∈ m2.nodes ∧ m2.payload b = m.payload b) ∧
      (∃ np, m2.mem p = some np ∧ (np.l = none ∨ np.r = none)) := by
  have hR := hI.1
  obtain ⟨x, hx⟩ := hR.mem_data_nodes.1 hp
  obtain ⟨q, c, L, R, rfl⟩ := tree.mem_decomp hx
  have hG := hI.good (by omega)
  have hF := hG.framed
  obtain ⟨n0, hb⟩ := hG.bal
  have hdl : 2 ≤ (fill q (.node p c (some x) L R)).data.length := by
    rw [← hI.size_eq]; exact hsz
  have hcell := Rep.cell hR
  rw [hn] at hcell
  simp only [Option.some.injEq] at hcell
  subst hcell
  simp only [ne_eq, tree.top_eq_none] at hl hr
  cases L with
  | nil => exact absurd rfl hl
  | node l cl vl ll lr =>
    cases R with
    | nil => exact absurd rfl hr
    | node r cr vr rl rr =>
      cases vr with
      | some xr =>
        obtain ⟨rs, t, ct, xt, TR, e, hL, hd, hdesc⟩ := neighbour_succ hR hF
        rw [e] at hR
        have h2 : Rep m (fill (rs ++ .R p c (some x) (.node l cl vl ll lr) :: q)
            (.node t ct (some xt) .nil TR)) := by
          rw [fill_append]; exact hR
        obtain ⟨m1, es, r1, sa⟩ := swap_succ hL h2
        have hd12 := Rep.distinct (p := rs ++ .R p c (some x) (.node l cl vl ll lr) :: q) h2
        have hmt : (t, some xt) ∈ (fill (rs ++ .R p c (some x) (.node l cl vl ll lr) :: q)
            (.node t ct (some xt) .nil TR)).elems := by
          simp [fill_elems, tree.elems]
        refine ⟨t, m1, _, q, hdesc, h2.mem_data_nodes.2 ⟨_, hmt⟩, ?_, es, r1,
          Or.inl ⟨rs, c, ct, x, xt, _, TR, hL, ?_, rfl⟩, ?_, ?_⟩
        · rintro rfl
          apply hd12.2.2.1
          simp [paddrs, pbefore_append, pafter_append, pbefore, pafter]
        · rw [e, fill_append]; rfl
        · intro b hb
          refine payload_of_perm h2 r1 ?_ hb
          intro e0
          simp only [fill_elems, pbefore_append, pafter_append, pbefore, pafter, tree.elems,
            List.mem_append, List.mem_cons, List.mem_singleton, List.not_mem_nil, or_false,
            false_or]
          exact iff_of_eq (by ac_rfl)
        · have hc1 := Rep.cell r1
          exact ⟨_, hc1, Or.inl rfl⟩
      | none =>
        obtain ⟨xl, rfl, rfl, rfl, rfl, hdesc⟩ := neighbour_pred hR hF hb hdl
        obtain ⟨m1, es, r1, sa⟩ := swap_adj_pred hR
        have hd12 := Rep.distinct (p := .L p c (some x) (.node r cr none .nil .nil) :: q) hR
        have hmt : (l, some xl) ∈ (fill q (.node p c (some x) (.node l cl (some xl) ll .nil)
            (.node r cr none .nil .nil))).elems := by
          simp [fill_elems, tree.elems]
        refine ⟨l, m1, _, q, hdesc, hR.mem_data_nodes.2 ⟨_, hmt⟩, ?_, es, r1,
          Or.inr ⟨c, cl, x, xl, ll, _, rfl, rfl⟩, ?_, ?_⟩
        · rintro rfl
          apply hd12.2.2.1
          simp [mem_paddrs_L]
        · intro b hb
          refine payload_of_perm hR r1 ?_ hb
          intro e0
          simp only [fill_elems, pbefore, pafter, tree.elems, List.mem_append, List.mem_cons,
            List.mem_singleton, List.not_mem_nil, or_false, false_or]
          exact iff_of_eq (by ac_rfl)
        · have r1b : Rep m1 (fill (.L l c (some xl) (.node r cr none .nil .nil) :: q)
              (.node p cl (some x) ll .nil)) := r1
          have hc1 := Rep.cell r1b
          exact ⟨_, hc1, Or.inr rfl⟩

end ft

namespace ft
open color_type
variable {K V : Type} [DecidableEq K]

/-! ### The iterator increment and decrement on a represented tree -/

/-- The walk to the leftmost descendant ends at the first node of the in-order sequence of the
subtree. -/
theorem leftmost_spec {m : map K V} : ∀ (t : tree K V) (par : ptr) (fuel : Nat),
    t ≠ .nil → Shaped m.mem par t → t.height ≤ fuel →
    ∃ b rest, t.addrs = b :: rest ∧ map.leftmost fuel m t.top = some (some b) := by
  intro t
  induction t with
  | nil => intro par fuel h; exact absurd rfl h
  | node a c v l r ihl _ =>
    intro par fuel _ hS hf
    obtain ⟨fuel, rfl⟩ : ∃ f, fuel = f + 1 := ⟨fuel - 1, by simp [tree.height] at hf; omega⟩
    simp only [tree.height] at hf
    cases l with
    | nil =>
      exact ⟨a, r.addrs, by simp, by simp [map.leftmost, get_l_eq hS.1]⟩
    | node a2 c2 v2 l2 r2 =>
      obtain ⟨b, rest, e1, e2⟩ := ihl (some a) fuel (by simp) hS.2.1 (by omega)
      refine ⟨b, rest ++ a :: r.addrs, ?_, ?_⟩
      · rw [tree.addrs_node, e1]; simp
      · simp only [tree.top_node] at e2
        simp [map.leftmost, get_l_eq hS.1, e2]

/-- The walk to the rightmost descendant ends at the last node of the in-order sequence of the
subtree. -/
theorem rightmost_spec {m : map K V} : ∀ (t : tree K V) (par : ptr) (fuel : Nat),
    t ≠ .nil → Shaped m.mem par t → t.height ≤ fuel →
    ∃ b init, t.addrs = init ++ [b] ∧ map.rightmost fuel m t.top = some (some b) := by
  intro t
  induction t with
  | nil => intro par fuel h; exact absurd rfl h
  | node a c v l r _ ihr =>
    intro par fuel _ hS hf
    obtain ⟨fuel, rfl⟩ : ∃ f, fuel = f + 1 := ⟨fuel - 1, by simp [tree.height] at hf; omega⟩
    simp only [tree.height] at hf
    cases r with
    | nil =>
      exact ⟨a, l.addrs, by simp, by simp [map.rightmost, get_r_eq hS.1]⟩
    | node a2 c2 v2 l2 r2 =>
      obtain ⟨b, init, e1, e2⟩ := ihr (some a) fuel (by simp) hS.2.2 (by omega)
      refine ⟨b, l.addrs ++ a :: init, ?_, ?_⟩
      · rw [tree.addrs_node, e1]; simp
      · simp only [tree.top_node] at e2
        simp [map.rightmost, get_r_eq hS.1, e2]

/-- The ascent of the increment ends at the first node after the subtree. -/
theorem climb_next_spec {m : map K V} : ∀ (q : List (frame K V)) (x : Nat) (c : color_type)
    (v : Option (K × V)) (l r : tree K V) (b : Nat) (rest : List Nat) (fuel : Nat),
    Rep m (fill q (.node x c v l r)) → (pafter q).map Prod.fst = b :: rest → q.length < fuel →
    map.climb_next fuel m (some x) = some (some b) := by
  intro q
  induction q with
  | nil => intro x c v l r b rest fuel _ h; simp [pafter] at h
  | cons f q ih =>
    intro x c v l r b rest fuel h hp hf
    obtain ⟨fuel, rfl⟩ : ∃ f, fuel = f + 1 := ⟨fuel - 1, by simp at hf; omega⟩
    have hc := Rep.cell h
    cases f with
    | L g cg vg sg =>
      have hg := Rep.cell (p := q) (a := g) h
      simp only [pafter, List.map_cons, List.cons.injEq] at hp
      obtain ⟨rfl, -⟩ := hp
      simp [map.climb_next, get_parent_eq hc, get_l_eq hg]
    | R g cg vg sg =>
      have hg := Rep.cell (p := q) (a := g) h
      have hd := Rep.distinct (p := q) (a := g) h
      have hne : sg.top ≠ some x := by
        intro e
        exact hd.2.2.2.1 x (tree.top_mem_addrs e) (by simp)
      simp only [pafter] at hp
      have h2 := ih g cg vg sg (.node x c v l r) b rest fuel h hp (by simp at hf; omega)
      simp [map.climb_next, get_parent_eq hc, get_l_eq hg, hne, h2]

/-- The ascent of the decrement ends at the last node before the subtree. -/
theorem climb_prev_spec {m : map K V} : ∀ (q : List (frame K V)) (x : Nat) (c : color_type)
    (v : Option (K × V)) (l r : tree K V) (b : Nat) (init : List Nat) (fuel : Nat),
    Rep m (fill q (.node x c v l r)) → (pbefore q).map Prod.fst = init ++ [b] →
    q.length < fuel → map.climb_prev fuel m (some x) = some (some b) := by
  intro q
  induction q with
  | nil => intro x c v l r b init fuel _ h; simp [pbefore] at h
  | cons f q ih =>
    intro x c v l r b init fuel h hp hf
    obtain ⟨fuel, rfl⟩ : ∃ f, fuel = f + 1 := ⟨fuel - 1, by simp at hf; omega⟩
    have hc := Rep.cell h
    cases f with
    | R g cg vg sg =>
      have hg := Rep.cell (p := q) (a := g) h
      simp only [pbefore, List.map_append, List.map_cons, List.map_nil] at hp
      have hp2 := List.append_inj' hp rfl
      simp only [List.cons.injEq, and_true] at hp2
      obtain ⟨-, rfl⟩ := hp2
      simp [map.climb_prev, get_parent_eq hc, get_r_eq hg]
    | L g cg vg sg =>
      have hg := Rep.cell (p := q) (a := g) h
      have hd := Rep.distinct (p := q) (a := g) h
      have hne : sg.top ≠ some x := by
        intro e
        exact hd.2.2.2.1 x (by simp) (tree.top_mem_addrs e)
      simp only [pbefore] at hp
      have h2 := ih g cg vg (.node x c v l r) sg b init fuel h hp (by simp at hf; omega)
      simp [map.climb_prev, get_parent_eq hc, get_r_eq hg, hne, h2]

/-- The position of an element in a list without repetition. -/
theorem nodup_split_unique {l pre post pre2 post2 : List Nat} {a : Nat} (hn : l.Nodup)
    (h1 : l = pre ++ a :: post) (h2 : l = pre2 ++ a :: post2) : pre = pre2 ∧ post = post2 := by
  subst h1
  induction pre generalizing pre2 with
  | nil =>
    cases pre2 with
    | nil =>
      simp only [List.nil_append, List.cons.injEq] at h2
      exact ⟨rfl, h2.2⟩
    | cons e pre3 =>
      exfalso
      simp only [List.nil_append, List.cons_append, List.cons.injEq] at h2
      obtain ⟨rfl, h3⟩ := h2
      rw [h3] at hn
      simp at hn
  | cons e pre ih =>
    cases pre2 with
    | nil =>
      exfalso
      simp only [List.nil_append, List.cons_append, List.cons.injEq] at h2
      obtain ⟨rfl, h3⟩ := h2
      simp at hn
    | cons e2 pre3 =>
      simp only [List.cons_append, List.cons.injEq] at h2
      obtain ⟨rfl, h3⟩ := h2
      have hn2 : (pre ++ a :: post).Nodup := by
        simp only [List.cons_append, List.nodup_cons] at hn
        exact hn.2
      obtain ⟨e1, e2⟩ := ih hn2 h3
      exact ⟨by rw [e1], e2⟩

/-- The node of an address of the represented tree, with the nodes before and after it. -/
theorem Rep.at_addr {m : map K V} {T : tree K V} (h : Rep m T) {pre post : List Nat} {a : Nat}
    (hT : T.addrs = pre ++ a :: post) :
    ∃ q c v L R, T = fill q (.node a c v L R) ∧
      pre = (pbefore q).map Prod.fst ++ L.addrs ∧
      post = R.addrs ++ (pafter q).map Prod.fst := by
  have ha : a ∈ T.addrs := by rw [hT]; simp
  rw [tree.addrs, List.mem_map] at ha
  obtain ⟨⟨a2, v⟩, hmem, rfl⟩ := ha
  obtain ⟨q, c, L, R, rfl⟩ := tree.mem_decomp hmem
  have e : (fill q (.node a2 c v L R)).addrs =
      ((pbefore q).map Prod.fst ++ L.addrs) ++ a2 :: (R.addrs ++ (pafter q).map Prod.fst) := by
    simp [fill_addrs]
  obtain ⟨e1, e2⟩ := nodup_split_unique h.nodup hT e
  exact ⟨q, c, v, L, R, rfl, e1, e2⟩

/-- The iterator increment moves to the next node of the in-order sequence. -/
theorem it_next_spec {m : map K V} {T : tree K V} (h : Rep m T) {pre post : List Nat}
    {a b : Nat} (hT : T.addrs = pre ++ a :: b :: post) :
    map.it_next m (some a) = some (some b) := by
  obtain ⟨q, c, v, L, R, rfl, -, e2⟩ := h.at_addr hT
  have hc := Rep.cell h
  obtain ⟨hS, hf⟩ := h.subtree (t := .node a c v L R)
  have hlen : q.length < m.brk + 1 := by
    have h1 := fill_length q (.node a c v L R)
    have h2 := h.card_le
    omega
  cases R with
  | nil =>
    simp only [tree.addrs_nil, List.nil_append] at e2
    have := climb_next_spec q a c v L .nil b post (m.brk + 1) h e2.symm hlen
    simp [map.it_next, get_r_eq hc, this]
  | node r cr vr rl rr =>
    have hr : (tree.node r cr vr rl rr).height ≤ m.brk + 1 := by
      have e : (tree.node a c v L (.node r cr vr rl rr)).height =
          max L.height (tree.node r cr vr rl rr).height + 1 := rfl
      omega
    obtain ⟨b2, rest, e3, e4⟩ := leftmost_spec (m := m) (.node r cr vr rl rr) (some a)
      (m.brk + 1) (by simp) hS.2.2 hr
    rw [e3] at e2
    simp only [List.cons_append, List.cons.injEq] at e2
    obtain ⟨rfl, -⟩ := e2
    simp only [tree.top_node] at e4
    simp [map.it_next, get_r_eq hc, e4]

/-- The iterator decrement moves to the previous node of the in-order sequence. -/
theorem it_prev_spec {m : map K V} {T : tree K V} (h : Rep m T) {pre post : List Nat}
    {a b : Nat} (hT : T.addrs = pre ++ a :: b :: post) :
    map.it_prev m (some b) = some (some a) := by
  have hT2 : T.addrs = (pre ++ [a]) ++ b :: post := by rw [hT]; simp
  obtain ⟨q, c, v, L, R, rfl, e1, -⟩ := h.at_addr hT2
  have hc := Rep.cell h
  obtain ⟨hS, hf⟩ := h.subtree (t := .node b c v L R)
  have hlen : q.length < m.brk + 1 := by
    have h1 := fill_length q (.node b c v L R)
    have h2 := h.card_le
    omega
  cases L with
  | nil =>
    simp only [tree.addrs_nil, List.append_nil] at e1
    have := climb_prev_spec q b c v .nil R a pre (m.brk + 1) h e1.symm hlen
    simp [map.it_prev, get_l_eq hc, this]
  | node l cl vl ll lr =>
    have hl : (tree.node l cl vl ll lr).height ≤ m.brk + 1 := by
      have e : (tree.node b c v (.node l cl vl ll lr) R).height =
          max (tree.node l cl vl ll lr).height R.height + 1 := rfl
      omega
    obtain ⟨b2, init, e3, e4⟩ := rightmost_spec (m := m) (.node l cl vl ll lr) (some b)
      (m.brk + 1) (by simp) hS.2.1 hl
    rw [e3, ← List.append_assoc] at e1
    have e5 := List.append_inj' e1 rfl
    simp only [List.cons.injEq, and_true] at e5
    obtain ⟨-, rfl⟩ := e5
    simp only [tree.top_node] at e4
    simp [map.it_prev, get_l_eq hc, e4]

end ft

namespace ft
open color_type
variable {K V : Type} [LinearOrder K]

/-! ### `erase(first, last)` -/

/-- The inner nodes of a framed sequence are data nodes. -/
theorem Framed.inner_data {A mid B : List (Nat × Option (K × V))} (h : Framed (A ++ mid ++ B))
    (hA : A ≠ []) (hB : B ≠ []) : ∀ e ∈ mid, ∃ x, e.2 = some x := by
  intro e he
  obtain ⟨m1, m2, rfl⟩ := List.append_of_mem he
  obtain ⟨a, v⟩ := e
  cases v with
  | some x => exact ⟨x, rfl⟩
  | none =>
    exfalso
    have h2 : Framed ((A ++ m1) ++ (a, none) :: (m2 ++ B)) := by simpa using h
    exact Framed.no_inner_end h2 (by simp [hA]) (by simp [hB])

theorem length_filterMap_data {es : List (Nat × Option (K × V))}
    (h : ∀ e ∈ es, ∃ x, e.2 = some x) : (es.filterMap Prod.snd).length = es.length := by
  induction es with
  | nil => rfl
  | cons e es ih =>
    obtain ⟨x, hx⟩ := h e (List.mem_cons_self _ _)
    obtain ⟨a, v⟩ := e
    simp only at hx
    subst hx
    simp [ih (fun e2 he2 => h e2 (List.mem_cons_of_mem _ he2))]

/-- The loop of `erase(first, last)` on a state that satisfies the invariant: the nodes from
`first` up to the node before `last` are erased one after the other. -/
theorem erase_range_loop_spec : ∀ (mid : List (Nat × Option (K × V))) (m : map K V)
    (T : tree K V) (A B : List (Nat × Option (K × V))) (l first : Nat) (vl : Option (K × V))
    (rest : List Nat) (fuel : Nat),
    InvT m T → T.elems = A ++ mid ++ (l, vl) :: B → A ≠ [] →
    (mid ++ [(l, vl)]).map Prod.fst = first :: rest → mid.length < fuel →
    ∃ m2 T2, map.erase_range_loop fuel m (some first) (some l) = some m2 ∧ InvT m2 T2 ∧
      T2.data = (A ++ (l, vl) :: B).filterMap Prod.snd ∧ m2._sz + mid.length = m._sz := by
  intro mid
  induction mid with
  | nil =>
    intro m T A B l first vl rest fuel hI hT hA hfirst hf
    obtain ⟨fuel, rfl⟩ : ∃ f, fuel = f + 1 := ⟨fuel - 1, by omega⟩
    simp only [List.nil_append, List.map_cons, List.map_nil, List.cons.injEq] at hfirst
    obtain ⟨rfl, -⟩ := hfirst
    refine ⟨m, T, by simp [map.erase_range_loop], hI, ?_, by simp⟩
    rw [tree.data, hT]; simp
  | cons e mid ih =>
    intro m T A B l first vl rest fuel hI hT hA hfirst hf
    obtain ⟨fuel, rfl⟩ : ∃ f, fuel = f + 1 := ⟨fuel - 1, by omega⟩
    obtain ⟨a, v⟩ := e
    simp only [List.cons_append, List.map_cons, List.cons.injEq] at hfirst
    obtain ⟨rfl, hrest⟩ := hfirst
    have hF := hI.framed
    rw [hT] at hF
    obtain ⟨x, hx⟩ := Framed.inner_data hF hA (by simp) (a, v) (by simp)
    simp only at hx
    subst hx
    -- the node after `first`
    obtain ⟨tmp, rest2, htmp⟩ : ∃ tmp rest2, (mid ++ [(l, vl)]).map Prod.fst = tmp :: rest2 := by
      cases mid with
      | nil => exact ⟨l, [], rfl⟩
      | cons e2 mid2 => exact ⟨e2.1, _, rfl⟩
    have haddrs : T.addrs = A.map Prod.fst ++ a :: tmp :: (rest2 ++ B.map Prod.fst) := by
      have h1 : T.elems = A ++ (a, some x) :: ((mid ++ [(l, vl)]) ++ B) := by rw [hT]; simp
      rw [tree.addrs, h1]
      simp only [List.map_append, List.map_cons, htmp]
      simp
    have hnext := it_next_spec hI.1 haddrs
    have hne : a ≠ l := by
      have hn := hI.1.nodup
      rw [tree.addrs, hT] at hn
      have hn2 : (A.map Prod.fst ++ a :: (mid.map Prod.fst ++ l :: B.map Prod.fst)).Nodup := by
        simpa using hn
      have hn3 := (List.nodup_cons.1 (List.nodup_append.1 hn2).2.1).1
      rintro rfl
      exact hn3 (by simp)
    have hmem : (a, some x) ∈ T.elems := by rw [hT]; simp
    obtain ⟨m2, T2, pre, post, e, i2, hsz, hT1, hd, h2, h1⟩ := erase_spec hI hmem
    have hsplit := split_unique hI.1.nodup
      (by rw [hT]; simp : T.elems = A ++ (a, some x) :: (mid ++ (l, vl) :: B)) hT1
    obtain ⟨rfl, rfl⟩ := hsplit
    have hstep : map.erase_range_loop (fuel + 1) m (some a) (some l) =
        map.erase_range_loop fuel m2 (some tmp) (some l) := by
      simp [map.erase_range_loop, hne, hnext, e]
    rw [hstep]
    by_cases hone : m._sz = 1
    · -- the last element: the tree is replaced by two new end nodes
      have hlen := hI.size_eq
      rw [tree.data, hT, hone] at hlen
      simp only [List.filterMap_append, List.filterMap_cons, List.length_append,
        List.length_cons] at hlen
      have hmd := length_filterMap_data
        (Framed.inner_data (A := A ++ [(a, some x)]) (B := (l, vl) :: B)
          (by simpa using hF) (by simp) (by simp))
      have hmid : mid = [] := by
        apply List.eq_nil_of_length_eq_zero
        omega
      subst hmid
      simp only [List.nil_append, List.map_cons, List.map_nil, List.cons.injEq] at htmp
      obtain ⟨rfl, -⟩ := htmp
      obtain ⟨fuel, rfl⟩ : ∃ f, fuel = f + 1 := ⟨fuel - 1, by simp at hf; omega⟩
      refine ⟨m2, T2, by simp [map.erase_range_loop], i2, ?_, by simp; omega⟩
      rw [hd]; simp
    · have hge : 2 ≤ m._sz := by omega
      obtain ⟨hT2, -⟩ := h2 hge
      obtain ⟨m3, T3, e3, i3, hd3, hsz3⟩ :=
        ih m2 T2 A B l tmp vl rest2 fuel i2 (by rw [hT2]; simp) hA htmp
          (by simp at hf; omega)
      refine ⟨m3, T3, e3, i3, hd3, ?_⟩
      simp only [List.length_cons]
      omega

end ft

namespace ft
open color_type
variable {K V : Type} [LinearOrder K]

/-- The payloads of the nodes of a part of the in-order sequence, read from the state. -/
theorem Rep.payloads_eq {m : map K V} {T : tree K V} (h : Rep m T)
    (es : List (Nat × Option (K × V))) (hs : ∀ e ∈ es, e ∈ T.elems) :
    (es.map Prod.fst).filterMap m.payload = es.filterMap Prod.snd :=
  ft.filterMap_payload es (fun e he => h.payload_eq (a := e.1) (v := e.2) (hs e he))

/-- Member `erase(first, last)` on a state that satisfies the invariant, for a range of nodes
`mid` of the in-order sequence that starts at `first` and ends before `l`. -/
theorem erase_range_spec {m : map K V} {T : tree K V} (hI : InvT m T) {A mid B : List Nat}
    {l first : Nat} {rest : List Nat} (hn : m.nodes = A ++ mid ++ l :: B) (hA : A ≠ [])
    (hfirst : mid ++ [l] = first :: rest) :
    ∃ m2 T2, m.erase_range (some first) (some l) = some m2 ∧ InvT m2 T2 ∧
      m2.to_list = (A ++ l :: B).filterMap m.payload ∧ m2._sz + mid.length = m._sz := by
  rw [hI.1.nodes_eq, tree.addrs] at hn
  obtain ⟨e1, e2, hT, h1, h2⟩ := List.map_eq_append_iff.1 hn
  obtain ⟨A2, mid2, rfl, rfl, rfl⟩ := List.map_eq_append_iff.1 h1
  obtain ⟨⟨l2, vl⟩, B2, rfl, rfl, rfl⟩ := List.map_eq_cons_iff.1 h2
  have hA2 : A2 ≠ [] := by rintro rfl; exact hA rfl
  have hF := hI.framed
  rw [hT] at hF
  have hmd := length_filterMap_data (Framed.inner_data hF hA2 (by simp))
  have hlen : mid2.length < m._sz + 1 := by
    rw [hI.size_eq, tree.data, hT]
    simp only [List.filterMap_append, List.length_append]
    omega
  obtain ⟨m2, T2, e, i2, hd, hsz⟩ := erase_range_loop_spec mid2 m T A2 B2 l2 first vl rest
    (m._sz + 1) hI hT hA2 (by simpa using hfirst) hlen
  refine ⟨m2, T2, e, i2, ?_, by simpa using hsz⟩
  rw [i2.1.to_list_eq, hd]
  have := hI.1.payloads_eq (A2 ++ (l2, vl) :: B2) (by
    intro e0 he0
    rw [hT]
    simp only [List.mem_append, List.mem_cons] at he0 ⊢
    tauto)
  rw [← this]
  simp

/-- Member `erase(begin(), end())` empties the map. -/
theorem erase_all_spec {m : map K V} {T : tree K V} (hI : InvT m T) :
    ∃ b e m2 T2, m.begin = some b ∧ m.end_ = some e ∧ m.erase_range b e = some m2 ∧
      InvT m2 T2 ∧ m2._sz = 0 ∧ m2.to_list = [] ∧ m2.begin = m2.end_ := by
  obtain ⟨hi, init, e1, e2⟩ := end_spec hI
  by_cases hsz : m._sz = 0
  · refine ⟨some hi, some hi, m, T, by rw [begin_empty hsz]; exact e1, e1, ?_, hI, hsz, ?_,
      begin_empty hsz⟩
    · simp [map.erase_range, map.erase_range_loop]
    · have := hI.size_eq
      rw [hsz] at this
      rw [hI.1.to_list_eq]
      exact List.eq_nil_of_length_eq_zero this.symm
  · obtain ⟨lo, b, xb, rest, e3, e4⟩ := begin_spec hI hsz
    -- the sequence is the low end node, the data nodes, the high end node
    rw [e4] at e2
    have hrest : ∃ mid, (b, some xb) :: rest = mid ++ [(hi, none)] := by
      rcases List.eq_nil_or_concat ((b, some xb) :: rest) with h0 | ⟨mid, z, h0⟩
      · simp at h0
      · rw [h0] at e2
        have e5 : ((lo, none) :: mid) ++ [z] = init ++ [(hi, none)] := by
          rw [← e2]; simp
        have e6 := (List.append_inj' e5 rfl).2
        simp only [List.cons.injEq, and_true] at e6
        subst e6
        exact ⟨mid, by rw [h0]; simp⟩
    obtain ⟨mid, hmid⟩ := hrest
    have hT : T.elems = [(lo, none)] ++ mid ++ (hi, none) :: [] := by
      rw [e4, hmid]; simp
    have hfirst : ∃ rest2, (mid ++ [(hi, none)]).map Prod.fst = b :: rest2 := by
      rw [← hmid]; exact ⟨_, rfl⟩
    obtain ⟨rest2, hfirst⟩ := hfirst
    have hF := hI.framed
    rw [hT] at hF
    have hmd := length_filterMap_data (Framed.inner_data hF (by simp) (by simp))
    have hlen : mid.length < m._sz + 1 := by
      rw [hI.size_eq, tree.data, hT]
      simp only [List.filterMap_append, List.length_append]
      omega
    obtain ⟨m2, T2, e, i2, hd, hsz2⟩ := erase_range_loop_spec mid m T [(lo, none)] [] hi b none
      rest2 (m._sz + 1) hI hT (by simp) hfirst hlen
    have hz : m2._sz = 0 := by
      rw [i2.size_eq, hd]; simp
    refine ⟨some b, some hi, m2, T2, e3, e1, e, i2, hz, ?_, begin_empty hz⟩
    rw [i2.1.to_list_eq, hd]; simp


/-- The nodes of a state that satisfies the invariant: the low end node, the data nodes, the
high end node, which `end()` returns; `begin()` returns the first of the data nodes and the
high end node. -/
theorem nodes_frame {m : map K V} {T : tree K V} (hI : InvT m T) :
    ∃ lo hi b rest, m.nodes = lo :: (m.data_nodes ++ [hi]) ∧ m.end_ = some (some hi) ∧
      m.begin = some (some b) ∧ m.data_nodes ++ [hi] = b :: rest ∧ m.payload hi = none ∧
      m.payload lo = none := by
  obtain ⟨hi, init, e1, e2⟩ := end_spec hI
  obtain ⟨lo, hi2, mid, e3, hm⟩ := hI.framed
  have e4 : ((lo, none) :: mid) ++ [(hi2, none)] = init ++ [(hi, none)] := by
    rw [← e2, e3]; simp
  have e5 := (List.append_inj' e4 rfl).2
  simp only [List.cons.injEq, Prod.mk.injEq, and_true] at e5
  subst e5
  have hd : m.data_nodes = mid.map Prod.fst := by
    rw [hI.1.data_nodes_eq, e3]
    simp only [List.filter_cons, Option.isSome_none, Bool.false_eq_true, if_false,
      List.filter_append, List.filter_nil, List.append_nil]
    congr 1
    rw [List.filter_eq_self]
    intro e he
    have := hm e he
    cases h : e.2 with
    | none => exact absurd h this
    | some x => rfl
  have hnodes : m.nodes = lo :: (m.data_nodes ++ [hi2]) := by
    rw [hI.1.nodes_eq, tree.addrs, e3, hd]; simp
  have hphi : m.payload hi2 = none := hI.1.payload_eq (by rw [e3]; simp)
  have hplo : m.payload lo = none := hI.1.payload_eq (by rw [e3]; simp)
  by_cases hsz : m._sz = 0
  · have hmid : mid = [] := by
      have := hI.size_eq
      rw [hsz, tree.data, e3] at this
      simp only [List.filterMap_cons, List.filterMap_append, List.filterMap_nil,
        List.append_nil] at this
      have h2 : (mid.filterMap Prod.snd).length = mid.length := length_filterMap_data (fun e he => by
        cases h : e.2 with
        | none => exact absurd h (hm e he)
        | some x => exact ⟨x, rfl⟩)
      exact List.eq_nil_of_length_eq_zero (by omega)
    subst hmid
    refine ⟨lo, hi2, hi2, [], hnodes, e1, by rw [begin_empty hsz]; exact e1, ?_, hphi, hplo⟩
    rw [hd]; rfl
  · obtain ⟨lo2, b, xb, rest, e6, e7⟩ := begin_spec hI hsz
    rw [e3] at e7
    simp only [List.cons.injEq, Prod.mk.injEq, and_true] at e7
    obtain ⟨-, e8⟩ := e7
    refine ⟨lo, hi2, b, rest.map Prod.fst, hnodes, e1, e6, ?_, hphi, hplo⟩
    rw [hd, ← List.map_singleton (f := Prod.fst) (a := ((hi2, none) : Nat × Option (K × V))),
      ← List.map_append, e8]
    rfl


/-- Repeated increments walk along the in-order sequence of nodes. -/
theorem it_advance_spec {m : map K V} {T : tree K V} (h : Rep m T) :
    ∀ (i : Nat) (pre seg : List Nat) (a b : Nat), T.addrs = pre ++ a :: seg →
    (a :: seg)[i]? = some b → map.it_advance m i (some a) = some (some b) := by
  intro i
  induction i with
  | zero =>
    intro pre seg a b _ hb
    simp only [List.getElem?_cons_zero, Option.some.injEq] at hb
    subst hb
    rfl
  | succ i ih =>
    intro pre seg a b hT hb
    cases seg with
    | nil => simp at hb
    | cons a2 seg2 =>
      have hnext := it_next_spec h hT
      simp only [List.getElem?_cons_succ] at hb
      have h2 := ih (pre ++ [a]) seg2 a2 b (by rw [hT]; simp) hb
      simp [map.it_advance, hnext, h2]

end ft

namespace ft
open color_type
variable {K V : Type} [LinearOrder K]

/-! ### The state in which `erase` calls `set_parent_target` -/

/-- The branch of `erase(iterator)` for a node with two children, with the walk to the
neighbour written as `erase_neighbour`. -/
theorem erase_rec_two_neighbour {m : map K V} {p l r : Nat} {n : node_type K V}
    (hc : m.mem p = some n) (hsz : m._sz ≠ 1) (hl : n.l = some l) (hr : n.r = some r)
    (fuel : Nat) :
    map.erase_rec (fuel + 1) m (some p) =
      ub_bind (map.erase_neighbour m (some p)) (fun tmp =>
        ub_bind (map._swap_nodes m (some p) tmp) (fun m2 => map.erase_rec fuel m2 (some p))) := by
  rw [erase_rec_two hc hsz hl hr fuel]
  simp only [map.erase_neighbour, bind_eq_ub, get_l_eq hc, get_r_eq hc, ub_bind_some, hl, hr]

/-- A map of at least two elements has allocated at least three nodes. -/
theorem InvT.three_le_brk {m : map K V} {T : tree K V} (hI : InvT m T) (hsz : 2 ≤ m._sz) :
    3 ≤ m.brk := by
  have hR := hI.1
  have hG := hI.good (by omega)
  have hdl : 2 ≤ T.data.length := by rw [← hI.size_eq]; exact hsz
  have h1 := hR.card_le
  have h2 : T.addrs.length = T.elems.length := by simp [tree.addrs]
  obtain ⟨lo, hi, mid, e, hm⟩ := hG.framed
  have h3 : mid ≠ [] := by
    rintro rfl
    rw [tree.data, e] at hdl
    simp at hdl
  have h4 : 1 ≤ mid.length := List.length_pos.2 h3
  rw [h2, e] at h1
  simp at h1
  omega

/-- The state in which `erase(iterator)` of a data node calls `set_parent_target`, in a map of
at least two elements: the state itself if the node has at most one child, the state after
`_swap_nodes` otherwise.  There the node has at most one child and hangs below a parent. -/
theorem erase_unlink_point {m : map K V} {q : List (frame K V)} {p : Nat} {c : color_type}
    {x : K × V} {L R : tree K V} (hI : InvT m (fill q (.node p c (some x) L R)))
    (hsz : 2 ≤ m._sz) :
    ∃ (m1 : map K V) (f : frame K V) (q1 : List (frame K V)) (c1 : color_type)
      (L1 R1 : tree K V) (n1 : Nat),
      Rep m1 (fill (f :: q1) (.node p c1 (some x) L1 R1)) ∧ (L1 = .nil ∨ R1 = .nil) ∧
      Bal (.node p c1 (some x) L1 R1) c1 n1 ∧ PathBal (f :: q1) c1 n1 ∧ SameAux m m1 ∧
      (((L = .nil ∨ R = .nil) ∧ m1 = m) ∨
        (L ≠ .nil ∧ R ≠ .nil ∧ ∃ t, map.erase_neighbour m (some p) = some (some t) ∧
          map._swap_nodes m (some p) (some t) = some m1)) := by
  have hR := hI.1
  have hG := hI.good (by omega)
  have hF := hG.framed
  have hdl : 2 ≤ (fill q (.node p c (some x) L R)).data.length := by
    rw [← hI.size_eq]; exact hsz
  obtain ⟨n0, hb⟩ := hG.bal
  have hsimple : L = .nil ∨ R = .nil → ∃ (m1 : map K V) (f : frame K V)
      (q1 : List (frame K V)) (c1 : color_type) (L1 R1 : tree K V) (n1 : Nat),
      Rep m1 (fill (f :: q1) (.node p c1 (some x) L1 R1)) ∧ (L1 = .nil ∨ R1 = .nil) ∧
      Bal (.node p c1 (some x) L1 R1) c1 n1 ∧ PathBal (f :: q1) c1 n1 ∧ SameAux m m1 ∧
      (((L = .nil ∨ R = .nil) ∧ m1 = m) ∨
        (L ≠ .nil ∧ R ≠ .nil ∧ ∃ t, map.erase_neighbour m (some p) = some (some t) ∧
          map._swap_nodes m (some p) (some t) = some m1)) := by
    intro hLR
    cases q with
    | nil =>
      exfalso
      simp only [fill_nil, tree.elems] at hF
      rcases hLR with rfl | rfl
      · have := Framed.head_none (by simpa [tree.elems] using hF : Framed ((p, some x) :: R.elems))
        simp at this
      · have := Framed.last_none (by simpa [tree.elems] using hF : Framed (L.elems ++ [(p, some x)]))
        simp at this
    | cons f q2 =>
      have hdp := Bal.data_path hb (by simp)
      obtain ⟨c2, n2, hbt, hpb⟩ := Bal.unfill hb hdp
      have hct : c = c2 := by simpa [tree.color] using hbt.color_eq
      subst hct
      exact ⟨m, f, q2, c, L, R, n2, hR, hLR, hbt, hpb, ⟨rfl, rfl, rfl⟩, Or.inl ⟨hLR, rfl⟩⟩
  cases L with
  | nil => exact hsimple (Or.inl rfl)
  | node l cl vl ll lr =>
    cases R with
    | nil => exact hsimple (Or.inr rfl)
    | node r cr vr rl rr =>
      cases vr with
      | some xr =>
        obtain ⟨rs, t, ct, xt, TR, e, hL, hd, hdesc⟩ := neighbour_succ hR hF
        rw [e] at hR hb
        have h2 : Rep m (fill (rs ++ .R p c (some x) (.node l cl vl ll lr) :: q)
            (.node t ct (some xt) .nil TR)) := by
          rw [fill_append]; exact hR
        obtain ⟨m1, es, r1, sa⟩ := swap_succ hL h2
        have hb2 : Bal (fill (rs ++ .R p c (some x) (.node l cl vl ll lr) :: q)
            (.node t ct (some xt) .nil TR)) black n0 := by
          rw [fill_append]; exact hb
        have hdp := Bal.data_path hb2 (by simp)
        obtain ⟨c2, n, hbt, hpb⟩ := Bal.unfill hb2 hdp
        have hct : ct = c2 := by simpa [tree.color] using hbt.color_eq
        subst hct
        have hbp : Bal (.node p ct (some x) .nil TR) ct n := hbt.relabel
        have hpb2 := PathBal.relabel_R (b := t) (y := xt) rs ct n hpb
        obtain ⟨f, q2, eq2⟩ :
            ∃ f q2, rs ++ .R t c (some xt) (.node l cl vl ll lr) :: q = f :: q2 := by
          cases rs with
          | nil => exact ⟨_, _, rfl⟩
          | cons f0 rs0 => exact ⟨_, _, rfl⟩
        rw [eq2] at r1 hpb2
        exact ⟨m1, f, q2, ct, .nil, TR, n, r1, Or.inl rfl, hbp, hpb2, sa,
          Or.inr ⟨by simp, by simp, t, hdesc, es⟩⟩
      | none =>
        obtain ⟨xl, rfl, rfl, rfl, rfl, hdesc⟩ := neighbour_pred hR hF hb hdl
        obtain ⟨m1, es, r1, sa⟩ := swap_adj_pred hR
        have r1b : Rep m1 (fill (.L l c (some xl) (.node r cr none .nil .nil) :: q)
            (.node p cl (some x) ll .nil)) := r1
        have hb2 : Bal (fill (.L p c (some x) (.node r cr none .nil .nil) :: q)
            (.node l cl (some xl) ll .nil)) black n0 := hb
        have hdp := Bal.data_path hb2 (by simp)
        obtain ⟨c2, n2, hbt, hpb⟩ := Bal.unfill hb2 hdp
        have hct : cl = c2 := by simpa [tree.color] using hbt.color_eq
        subst hct
        have hbp2 : Bal (.node p cl (some x) ll .nil) cl n2 := hbt.relabel
        have hpb2 := PathBal.relabel_L (b := l) (y := xl) hpb
        exact ⟨m1, _, q, cl, ll, .nil, n2, r1b, Or.inr rfl, hbp2, hpb2, sa,
          Or.inr ⟨by simp, by simp, l, hdesc, es⟩⟩

/-- The cell of the innermost frame of a path of the represented tree. -/
theorem Rep.frame_live {m : map K V} {f : frame K V} {q : List (frame K V)} {t : tree K V}
    (h : Rep m (fill (f :: q) t)) : ∃ ng, m.mem f.addr = some ng := by
  cases f with
  | L a c v r => exact ⟨_, Rep.cell (p := q) h⟩
  | R a c v l => exact ⟨_, Rep.cell (p := q) h⟩

/-- Member `erase(iterator)` of a data node in a map of at least two elements calls
`set_parent_target` once, in the state `m1` of `erase_unlink_point`, on the node `p`, which
has at most one child there and a live parent; the call and the statements that follow it
return a state. -/
theorem erase_call_point {m : map K V} {T : tree K V} (hI : InvT m T) (hsz : 2 ≤ m._sz)
    {p : Nat} (hp : p ∈ m.data_nodes) :
    ∃ (m1 : map K V) (n1 : node_type K V) (g : Nat) (m2 : map K V),
      ((∃ n, m.mem p = some n ∧ (n.l = none ∨ n.r = none) ∧ m1 = m) ∨
        (∃ n t, m.mem p = some n ∧ n.l ≠ none ∧ n.r ≠ none ∧
          map.erase_neighbour m (some p) = some (some t) ∧
          map._swap_nodes m (some p) (some t) = some m1)) ∧
      m1.mem p = some n1 ∧ (n1.l = none ∨ n1.r = none) ∧ n1.parent = some g ∧
      (∃ ng, m1.mem g = some ng) ∧ m1._sz = m._sz ∧
      (∀ fuel, map.erase_rec (fuel + 1) m1 (some p) =
        ub_bind (map.set_parent_target m1 (some p) (if n1.l = none then n1.r else n1.l))
          (fun m3 => map.erase_tail m3 (some p))) ∧
      (∀ fuel, map.erase_rec (fuel + 2) m (some p) = map.erase_rec 1 m1 (some p)) ∧
      m.erase (some p) = map.erase_rec 1 m1 (some p) ∧
      map.erase_rec 1 m1 (some p) = some m2 := by
  have hR := hI.1
  obtain ⟨x, hx⟩ := hR.mem_data_nodes.1 hp
  obtain ⟨q, c, L, R, rfl⟩ := tree.mem_decomp hx
  have hbrk := hI.three_le_brk hsz
  obtain ⟨m1, f, q1, c1, L1, R1, n1, r1, hLR, hb1, hpb1, sa, hcase⟩ :=
    erase_unlink_point hI hsz
  have hc1 := Rep.cell r1
  have hc := Rep.cell hR
  have hsz1 : m1._sz ≠ 1 := by rw [sa.2.1]; omega
  have hnot : (tree.top L1 = none ∨ tree.top R1 = none) := by
    rcases hLR with rfl | rfl
    · exact Or.inl rfl
    · exact Or.inr rfl
  have hsimp := fun fuel => erase_rec_simple hc1 hsz1 hnot fuel
  obtain ⟨m2, T2, e2, -⟩ := remove_simple r1 hLR hb1 hpb1 (by rw [sa.2.1]; exact hsz) 0
  have hfuel : ∀ fuel, map.erase_rec (fuel + 2) m (some p) = map.erase_rec 1 m1 (some p) := by
    intro fuel
    rcases hcase with ⟨-, rfl⟩ | ⟨hl, hr, t, hnb, hsw⟩
    · rw [hsimp (fuel + 1), hsimp 0]
    · cases L with
      | nil => exact absurd rfl hl
      | node l cl vl ll lr =>
        cases R with
        | nil => exact absurd rfl hr
        | node r cr vr rl rr =>
          rw [erase_rec_two_neighbour hc (by omega) (l := l) (r := r) rfl rfl (fuel + 1), hnb]
          simp only [ub_bind_some, hsw]
          rw [hsimp fuel, hsimp 0]
  refine ⟨m1, _, f.addr, m2, ?_, hc1, hnot, rfl, r1.frame_live, sa.2.1, hsimp, hfuel, ?_, e2⟩
  · rcases hcase with ⟨h1, rfl⟩ | ⟨hl, hr, t, hnb, hsw⟩
    · refine Or.inl ⟨_, hc, ?_, rfl⟩
      rcases h1 with rfl | rfl
      · exact Or.inl rfl
      · exact Or.inr rfl
    · refine Or.inr ⟨_, t, hc, ?_, ?_, hnb, hsw⟩
      · simpa [tree.top_eq_none] using hl
      · simpa [tree.top_eq_none] using hr
  · obtain ⟨k, hk⟩ : ∃ k, m.brk + 1 = k + 2 := ⟨m.brk - 1, by omega⟩
    rw [map.erase, hk, hfuel k]

/-- The root of a non-empty map is a data node with two children and without parent. -/
theorem InvT.root_two_children {m : map K V} {T : tree K V} (hI : InvT m T) (hsz : 1 ≤ m._sz) :
    ∃ r nr, m._root = some r ∧ m.mem r = some nr ∧ nr.val ≠ none ∧ nr.l ≠ none ∧
      nr.r ≠ none ∧ nr.parent = none := by
  have hR := hI.1
  have hG := hI.good (by omega)
  have hF := hG.framed
  obtain ⟨n0, hb⟩ := hG.bal
  cases T with
  | nil =>
    obtain ⟨lo, hi, mid, e, -⟩ := hF
    simp [tree.elems] at e
  | node a c v L R =>
    have hc := Rep.cell (p := []) hR
    refine ⟨a, _, hR.root, hc, ?_, ?_, ?_, rfl⟩
    · cases hb with
      | sentinel =>
        obtain ⟨lo, hi, mid, e, -⟩ := hF
        have e2 := congrArg List.length e
        simp [tree.elems] at e2
      | black hl hr => simp
    · cases hb with
      | sentinel =>
        obtain ⟨lo, hi, mid, e, -⟩ := hF
        have e2 := congrArg List.length e
        simp [tree.elems] at e2
      | @black _ x _ _ _ _ _ hl hr =>
        simp only [ne_eq, tree.top_eq_none]
        rintro rfl
        have := Framed.head_none (by simpa [tree.elems] using hF : Framed ((a, some x) :: R.elems))
        simp at this
    · cases hb with
      | sentinel =>
        obtain ⟨lo, hi, mid, e, -⟩ := hF
        have e2 := congrArg List.length e
        simp [tree.elems] at e2
      | @black _ x _ _ _ _ _ hl hr =>
        simp only [ne_eq, tree.top_eq_none]
        rintro rfl
        have := Framed.last_none (by simpa [tree.elems] using hF : Framed (L.elems ++ [(a, some x)]))
        simp at this

/-- Member `isOnLeft` on a node with a live parent. -/
theorem isOnLeft_eq {m : map K V} {a g : Nat} {n ng : node_type K V} (hn : m.mem a = some n)
    (hp : n.parent = some g) (hg : m.mem g = some ng) :
    isOnLeft m (some a) = some (decide (some a = ng.l)) := by
  simp [isOnLeft, get_parent_eq hn, hp, get_l_eq hg]

end ft

namespace ft
open color_type
variable {K V : Type} [DecidableEq K]

/-! ### The pointers that `_insert_fix` and the rotations dereference -/

/-- A field can only be read through a pointer to a live node. -/
theorem deref_defined {m : map K V} {p : ptr} {n : node_type K V} (h : deref m p = some n) :
    ∃ a, p = some a ∧ m.mem a = some n := by
  cases p with
  | none => simp [deref] at h
  | some a => exact ⟨a, rfl, by simpa [deref] using h⟩

theorem get_parent_defined {m : map K V} {p q : ptr} (h : get_parent m p = some q) :
    ∃ a n, p = some a ∧ m.mem a = some n ∧ n.parent = q := by
  simp only [get_parent, Option.map_eq_some'] at h
  obtain ⟨n, hn, rfl⟩ := h
  obtain ⟨a, rfl, ha⟩ := deref_defined hn
  exact ⟨a, n, rfl, ha, rfl⟩

theorem get_l_defined {m : map K V} {p q : ptr} (h : get_l m p = some q) :
    ∃ a n, p = some a ∧ m.mem a = some n ∧ n.l = q := by
  simp only [get_l, Option.map_eq_some'] at h
  obtain ⟨n, hn, rfl⟩ := h
  obtain ⟨a, rfl, ha⟩ := deref_defined hn
  exact ⟨a, n, rfl, ha, rfl⟩

theorem get_r_defined {m : map K V} {p q : ptr} (h : get_r m p = some q) :
    ∃ a n, p = some a ∧ m.mem a = some n ∧ n.r = q := by
  simp only [get_r, Option.map_eq_some'] at h
  obtain ⟨n, hn, rfl⟩ := h
  obtain ⟨a, rfl, ha⟩ := deref_defined hn
  exact ⟨a, n, rfl, ha, rfl⟩

/-- Member `_l_rotate` returns only if the node and its right child, which it dereferences,
are live nodes. -/
theorem l_rotate_defined {m m2 : map K V} {x : ptr} (h : map._l_rotate m x = some m2) :
    ∃ a y na ny, x = some a ∧ m.mem a = some na ∧ na.r = some y ∧ m.mem y = some ny := by
  simp only [map._l_rotate, bind_eq_ub] at h
  obtain ⟨y, hy, h⟩ := ub_bind_eq_some.1 h
  obtain ⟨yl, hyl, -⟩ := ub_bind_eq_some.1 h
  obtain ⟨a, na, rfl, ha, rfl⟩ := get_r_defined hy
  obtain ⟨b, nb, hb, hb2, -⟩ := get_l_defined hyl
  exact ⟨a, b, na, nb, rfl, ha, hb, hb2⟩

/-- Member `_r_rotate` returns only if the node and its left child, which it dereferences,
are live nodes. -/
theorem r_rotate_defined {m m2 : map K V} {x : ptr} (h : map._r_rotate m x = some m2) :
    ∃ a y na ny, x = some a ∧ m.mem a = some na ∧ na.l = some y ∧ m.mem y = some ny := by
  simp only [map._r_rotate, bind_eq_ub] at h
  obtain ⟨y, hy, h⟩ := ub_bind_eq_some.1 h
  obtain ⟨yr, hyr, -⟩ := ub_bind_eq_some.1 h
  obtain ⟨a, na, rfl, ha, rfl⟩ := get_l_defined hy
  obtain ⟨b, nb, hb, hb2, -⟩ := get_r_defined hyr
  exact ⟨a, b, na, nb, rfl, ha, hb, hb2⟩

/-- The test `s && s->color == red` holds only for a live red node. -/
theorem is_red_true {m : map K V} {s : ptr} (h : map.is_red m s = some true) :
    ∃ a, s = some a ∧ get_color m (some a) = some red := by
  cases s with
  | none => simp [map.is_red] at h
  | some a =>
    refine ⟨a, rfl, ?_⟩
    simp only [map.is_red, ne_eq, not_false_eq_true, if_true, bind_eq_ub, pure_eq_some,
      reduceCtorEq] at h
    obtain ⟨c, hc, h2⟩ := ub_bind_eq_some.1 h
    simp only [Option.some.injEq, decide_eq_true_eq] at h2
    rw [hc, h2]

/-- The body of the loop of `_insert_fix` returns only if the parent and the grandparent of
`k`, which it dereferences, are live nodes. -/
theorem insert_fix_body_defined {m : map K V} {k : ptr} {r : map K V × ptr}
    (h : map._insert_fix_body m k = some r) :
    ∃ kp kpp ng, get_parent m k = some (some kp) ∧ get_parent m (some kp) = some (some kpp) ∧
      m.mem kpp = some ng := by
  simp only [map._insert_fix_body, bind_eq_ub] at h
  obtain ⟨kp, hkp, h⟩ := ub_bind_eq_some.1 h
  obtain ⟨kpp, hkpp, h⟩ := ub_bind_eq_some.1 h
  obtain ⟨rr, hrr, -⟩ := ub_bind_eq_some.1 h
  obtain ⟨a, na, rfl, ha, -⟩ := get_parent_defined hkpp
  obtain ⟨b, nb, rfl, hb, -⟩ := get_r_defined hrr
  exact ⟨a, b, nb, hkp, hkpp, hb⟩

/-- When `_insert_fix` returns, every iteration of its loop found a red parent and a live
grandparent of `k`, and its body returned. -/
theorem insert_fix_iters_defined : ∀ (fuel : Nat) (m : map K V) (k : ptr) (m3 : map K V),
    map._insert_fix fuel m k = some m3 →
    ∃ iters, map._insert_fix_iters fuel m k = some iters ∧
      ∀ s ∈ iters, ∃ kp kpp ng, get_parent s.1 s.2 = some (some kp) ∧
        get_color s.1 (some kp) = some red ∧
        get_parent s.1 (some kp) = some (some kpp) ∧ s.1.mem kpp = some ng ∧
        (map._insert_fix_body s.1 s.2).isSome = true := by
  intro fuel
  induction fuel with
  | zero => intro m k m3 h; simp [map._insert_fix] at h
  | succ fuel ih =>
    intro m k m3 h
    simp only [map._insert_fix, bind_eq_ub] at h
    obtain ⟨kp, hkp, g1⟩ := ub_bind_eq_some.1 h
    obtain ⟨b, hb, g2⟩ := ub_bind_eq_some.1 g1
    cases b with
    | false =>
      refine ⟨[], ?_, by simp⟩
      simp [map._insert_fix_iters, hkp, hb]
    | true =>
      simp only [if_true] at g2
      obtain ⟨⟨m2, k2⟩, hbody, g3⟩ := ub_bind_eq_some.1 g2
      obtain ⟨a, rfl, hcol⟩ := is_red_true hb
      obtain ⟨kp2, kpp, ng, h1, h2, h3⟩ := insert_fix_body_defined hbody
      rw [hkp] at h1
      simp only [Option.some.injEq] at h1
      subst h1
      have hsafe : ∃ kp kpp ng, get_parent m k = some (some kp) ∧
          get_color m (some kp) = some red ∧
          get_parent m (some kp) = some (some kpp) ∧ m.mem kpp = some ng ∧
          (map._insert_fix_body m k).isSome = true :=
        ⟨a, kpp, ng, hkp, hcol, h2, h3, by rw [hbody]; rfl⟩
      by_cases hroot : k2 = m2._root
      · refine ⟨[(m, k)], ?_, ?_⟩
        · simp [map._insert_fix_iters, hkp, hb, hbody, hroot]
        · intro s hs
          simp only [List.mem_singleton] at hs
          subst hs
          exact hsafe
      · have g4 : map._insert_fix fuel m2 k2 = some m3 := by simpa [hroot] using g3
        obtain ⟨rest, e, hrest⟩ := ih m2 k2 m3 g4
        refine ⟨(m, k) :: rest, ?_, ?_⟩
        · simp [map._insert_fix_iters, hkp, hb, hbody, hroot, e]
        · intro s hs
          simp only [List.mem_cons] at hs
          rcases hs with rfl | hs
          · exact hsafe
          · exact hrest s hs

/-- Member `insert` that returns has run `insert_body` and, for a new key in a map that then
holds more than two elements, `_insert_fix` on the state with the incremented count. -/
theorem insert_defined {m : map K V} {x : K × V} {res : map K V × ptr × Bool}
    (h : m.insert x = some res) :
    ∃ m1 it b, map.insert_body (m.brk + 1) m m._root x = some (m1, it, b) ∧
      (b = true → 2 < m1._sz + 1 →
        ∃ m3, map._insert_fix (m1.brk + 1) { m1 with _sz := m1._sz + 1 } it = some m3) := by
  simp only [map.insert, bind_eq_ub] at h
  obtain ⟨⟨m1, it, b⟩, hbody, h⟩ := ub_bind_eq_some.1 h
  refine ⟨m1, it, b, hbody, ?_⟩
  intro hb hsz
  subst hb
  have hn : ¬ (m1._sz + 1 ≤ 2) := by omega
  simp only [if_true, hn, if_false] at h
  obtain ⟨m3, h3, -⟩ := ub_bind_eq_some.1 h
  exact ⟨m3, h3⟩

end ft

namespace ft
open color_type
variable {K V : Type}

/-! ### Single turns of `fixDoubleBlack`, with the invocation that follows -/

/-- One turn of `fixDoubleBlack`, as `fixDoubleBlack_step` runs it, at a left child whose sibling is red: after the recolouring and the rotation the same node is repaired against its new sibling. -/
theorem step_red_sibling_L {m : map K V} {q : List (frame K V)} {P s : Nat}
    {cP : color_type} {vP vs : Option (K × V)}
    {X sl sr : tree K V}
    (h : Rep m (fill q (.node P cP vP X (.node s red vs sl sr))))
    (hroot : X.top ≠ m._root) :
    ∃ m2, map.fixDoubleBlack_step m X.top (some P) (some s) =
        some (Sum.inr (m2, X.top, some P, sl.top)) ∧
      Rep m2 (fill q (.node s black vs (.node P red vP X sl) sr)) ∧ SameAux m m2 := by
  have hn := h.nodup
  simp only [nodup_fill_iff, nodup_paddrs_L, nodup_paddrs_R, disjoint_paddrs_L,
    disjoint_paddrs_R, mem_paddrs_L, mem_paddrs_R, tree.addrs_node, tree.addrs_nil,
    List.nodup_append, List.nodup_cons, List.mem_append, List.mem_cons,
    List.disjoint_append_left, List.disjoint_append_right, List.disjoint_cons_left,
    List.disjoint_cons_right, not_or, paddrs_nil, List.disjoint_nil_left,
    List.disjoint_nil_right, List.not_mem_nil, List.nil_append, List.nodup_nil,
    not_false_eq_true, true_and, and_true] at hn
  casesm* _ ∧ _
  have d_P_s : P ≠ s := by first | assumption | exact Ne.symm (by assumption)
  have d_s_P : s ≠ P := by first | assumption | exact Ne.symm (by assumption)
  have t_X_P : X.top ≠ some P := tree.top_ne_of_not_mem (by assumption)
  have u_X_P : some P ≠ X.top := tree.ne_top_of_not_mem (by assumption)
  have t_X_s : X.top ≠ some s := tree.top_ne_of_not_mem (by assumption)
  have u_X_s : some s ≠ X.top := tree.ne_top_of_not_mem (by assumption)
  have t_sl_P : sl.top ≠ some P := tree.top_ne_of_not_mem (by assumption)
  have u_sl_P : some P ≠ sl.top := tree.ne_top_of_not_mem (by assumption)
  have t_sl_s : sl.top ≠ some s := tree.top_ne_of_not_mem (by assumption)
  have u_sl_s : some s ≠ sl.top := tree.ne_top_of_not_mem (by assumption)
  have t_sr_P : sr.top ≠ some P := tree.top_ne_of_not_mem (by assumption)
  have u_sr_P : some P ≠ sr.top := tree.ne_top_of_not_mem (by assumption)
  have t_sr_s : sr.top ≠ some s := tree.top_ne_of_not_mem (by assumption)
  have u_sr_s : some s ≠ sr.top := tree.ne_top_of_not_mem (by assumption)
  have c0_P := Rep.cell (p := q) h
  have c0_s := Rep.cell (p := (.R P cP vP X) :: q) h
  obtain ⟨m1, e1, r1, a1⟩ := Rep.set_color (p := q) h red
  have c1_P := Rep.cell (p := q) r1
  have c1_s := Rep.cell (p := (.R P red vP X) :: q) r1
  obtain ⟨m2, e2, r2, a2⟩ := Rep.set_color (p := (.R P red vP X) :: q) r1 black
  have c2_P := Rep.cell (p := q) r2
  have c2_s := Rep.cell (p := (.R P red vP X) :: q) r2
  obtain ⟨m3, e3, r3, a3⟩ := l_rotate_spec (p := q) r2
  have c3_P := Rep.cell (p := (.L s black vs sr) :: q) r3
  have c3_s := Rep.cell (p := q) r3
  refine ⟨m3, ?_, r3, a1.trans (a2.trans a3)⟩
  simp [map.fixDoubleBlack_step, map.fixDoubleBlack_red_child, isOnLeft, hasRedChild, hroot, d_P_s,
    d_s_P, t_X_P, u_X_P, t_X_s, u_X_s, t_sl_P, u_sl_P, t_sl_s, u_sl_s, t_sr_P, u_sr_P, t_sr_s,
    u_sr_s, get_color_eq c0_P, get_val_eq c0_P, get_l_eq c0_P, get_r_eq c0_P, get_parent_eq c0_P,
    get_color_eq c0_s, get_val_eq c0_s, get_l_eq c0_s, get_r_eq c0_s, get_parent_eq c0_s,
    get_color_eq c1_P, get_val_eq c1_P, get_l_eq c1_P, get_r_eq c1_P, get_parent_eq c1_P,
    get_color_eq c1_s, get_val_eq c1_s, get_l_eq c1_s, get_r_eq c1_s, get_parent_eq c1_s,
    get_color_eq c2_P, get_val_eq c2_P, get_l_eq c2_P, get_r_eq c2_P, get_parent_eq c2_P,
    get_color_eq c2_s, get_val_eq c2_s, get_l_eq c2_s, get_r_eq c2_s, get_parent_eq c2_s,
    get_color_eq c3_P, get_val_eq c3_P, get_l_eq c3_P, get_r_eq c3_P, get_parent_eq c3_P,
    get_color_eq c3_s, get_val_eq c3_s, get_l_eq c3_s, get_r_eq c3_s, get_parent_eq c3_s, e1, e2,
    e3]

/-- One turn of `fixDoubleBlack`, as `fixDoubleBlack_step` runs it, at a left child whose black sibling has a red left child. -/
theorem step_red_left_L {m : map K V} {q : List (frame K V)} {P a s : Nat}
    {cP : color_type} {vP vs : Option (K × V)} {xa : K × V}
    {X A B sr : tree K V}
    (h : Rep m (fill q (.node P cP vP X (.node s black vs (.node a red (some xa) A B) sr))))
    (hroot : X.top ≠ m._root) :
    ∃ m2, map.fixDoubleBlack_step m X.top (some P) (some s) =
        some (Sum.inl m2) ∧
      Rep m2 (fill q (.node a cP (some xa) (.node P black vP X A) (.node s black vs B sr))) ∧ SameAux m m2 := by
  have hn := h.nodup
  simp only [nodup_fill_iff, nodup_paddrs_L, nodup_paddrs_R, disjoint_paddrs_L,
    disjoint_paddrs_R, mem_paddrs_L, mem_paddrs_R, tree.addrs_node, tree.addrs_nil,
    List.nodup_append, List.nodup_cons, List.mem_append, List.mem_cons,
    List.disjoint_append_left, List.disjoint_append_right, List.disjoint_cons_left,
    List.disjoint_cons_right, not_or, paddrs_nil, List.disjoint_nil_left,
    List.disjoint_nil_right, List.not_mem_nil, List.nil_append, List.nodup_nil,
    not_false_eq_true, true_and, and_true] at hn
  casesm* _ ∧ _
  have d_P_a : P ≠ a := by first | assumption | exact Ne.symm (by assumption)
  have d_P_s : P ≠ s := by first | assumption | exact Ne.symm (by assumption)
  have d_a_P : a ≠ P := by first | assumption | exact Ne.symm (by assumption)
  have d_a_s : a ≠ s := by first | assumption | exact Ne.symm (by assumption)
  have d_s_P : s ≠ P := by first | assumption | exact Ne.symm (by assumption)
  have d_s_a : s ≠ a := by first | assumption | exact Ne.symm (by assumption)
  have t_X_P : X.top ≠ some P := tree.top_ne_of_not_mem (by assumption)
  have u_X_P : some P ≠ X.top := tree.ne_top_of_not_mem (by assumption)
  have t_X_a : X.top ≠ some a := tree.top_ne_of_not_mem (by assumption)
  have u_X_a : some a ≠ X.top := tree.ne_top_of_not_mem (by assumption)
  have t_X_s : X.top ≠ some s := tree.top_ne_of_not_mem (by assumption)
  have u_X_s : some s ≠ X.top := tree.ne_top_of_not_mem (by assumption)
  have t_A_P : A.top ≠ some P := tree.top_ne_of_not_mem (by assumption)
  have u_A_P : some P ≠ A.top := tree.ne_top_of_not_mem (by assumption)
  have t_A_a : A.top ≠ some a := tree.top_ne_of_not_mem (by assumption)
  have u_A_a : some a ≠ A.top := tree.ne_top_of_not_mem (by assumption)
  have t_A_s : A.top ≠ some s := tree.top_ne_of_not_mem (by assumption)
  have u_A_s : some s ≠ A.top := tree.ne_top_of_not_mem (by assumption)
  have t_B_P : B.top ≠ some P := tree.top_ne_of_not_mem (by assumption)
  have u_B_P : some P ≠ B.top := tree.ne_top_of_not_mem (by assumption)
  have t_B_a : B.top ≠ some a := tree.top_ne_of_not_mem (by assumption)
  have u_B_a : some a ≠ B.top := tree.ne_top_of_not_mem (by assumption)
  have t_B_s : B.top ≠ some s := tree.top_ne_of_not_mem (by assumption)
  have u_B_s : some s ≠ B.top := tree.ne_top_of_not_mem (by assumption)
  have t_sr_P : sr.top ≠ some P := tree.top_ne_of_not_mem (by assumption)
  have u_sr_P : some P ≠ sr.top := tree.ne_top_of_not_mem (by assumption)
  have t_sr_a : sr.top ≠ some a := tree.top_ne_of_not_mem (by assumption)
  have u_sr_a : some a ≠ sr.top := tree.ne_top_of_not_mem (by assumption)
  have t_sr_s : sr.top ≠ some s := tree.top_ne_of_not_mem (by assumption)
  have u_sr_s : some s ≠ sr.top := tree.ne_top_of_not_mem (by assumption)
  have c0_P := Rep.cell (p := q) h
  have c0_a := Rep.cell (p := (.L s black vs sr) :: (.R P cP vP X) :: q) h
  have c0_s := Rep.cell (p := (.R P cP vP X) :: q) h
  obtain ⟨m1, e1, r1, a1⟩ := Rep.set_color (p := (.L s black vs sr) :: (.R P cP vP X) :: q) h cP
  have c1_P := Rep.cell (p := q) r1
  have c1_a := Rep.cell (p := (.L s black vs sr) :: (.R P cP vP X) :: q) r1
  have c1_s := Rep.cell (p := (.R P cP vP X) :: q) r1
  obtain ⟨m2, e2, r2, a2⟩ := r_rotate_spec (p := (.R P cP vP X) :: q) r1
  have c2_P := Rep.cell (p := q) r2
  have c2_a := Rep.cell (p := (.R P cP vP X) :: q) r2
  have c2_s := Rep.cell (p := (.R a cP (some xa) A) :: (.R P cP vP X) :: q) r2
  obtain ⟨m3, e3, r3, a3⟩ := l_rotate_spec (p := q) r2
  have c3_P := Rep.cell (p := (.L a cP (some xa) (.node s black vs B sr)) :: q) r3
  have c3_a := Rep.cell (p := q) r3
  have c3_s := Rep.cell (p := (.R a cP (some xa) (.node P cP vP X A)) :: q) r3
  obtain ⟨m4, e4, r4, a4⟩ := Rep.set_color (p := (.L a cP (some xa) (.node s black vs B sr)) :: q) r3 black
  have c4_P := Rep.cell (p := (.L a cP (some xa) (.node s black vs B sr)) :: q) r4
  have c4_a := Rep.cell (p := q) r4
  have c4_s := Rep.cell (p := (.R a cP (some xa) (.node P black vP X A)) :: q) r4
  refine ⟨m4, ?_, r4, a1.trans (a2.trans (a3.trans a4))⟩
  simp [map.fixDoubleBlack_step, map.fixDoubleBlack_red_child, isOnLeft, hasRedChild, hroot, d_P_a,
    d_P_s, d_a_P, d_a_s, d_s_P, d_s_a, t_X_P, u_X_P, t_X_a, u_X_a, t_X_s, u_X_s, t_A_P, u_A_P,
    t_A_a, u_A_a, t_A_s, u_A_s, t_B_P, u_B_P, t_B_a, u_B_a, t_B_s, u_B_s, t_sr_P, u_sr_P, t_sr_a,
    u_sr_a, t_sr_s, u_sr_s, get_color_eq c0_P, get_val_eq c0_P, get_l_eq c0_P, get_r_eq c0_P,
    get_parent_eq c0_P, get_color_eq c0_a, get_val_eq c0_a, get_l_eq c0_a, get_r_eq c0_a,
    get_parent_eq c0_a, get_color_eq c0_s, get_val_eq c0_s, get_l_eq c0_s, get_r_eq c0_s,
    get_parent_eq c0_s, get_color_eq c1_P, get_val_eq c1_P, get_l_eq c1_P, get_r_eq c1_P,
    get_parent_eq c1_P, get_color_eq c1_a, get_val_eq c1_a, get_l_eq c1_a, get_r_eq c1_a,
    get_parent_eq c1_a, get_color_eq c1_s, get_val_eq c1_s, get_l_eq c1_s, get_r_eq c1_s,
    get_parent_eq c1_s, get_color_eq c2_P, get_val_eq c2_P, get_l_eq c2_P, get_r_eq c2_P,
    get_parent_eq c2_P, get_color_eq c2_a, get_val_eq c2_a, get_l_eq c2_a, get_r_eq c2_a,
    get_parent_eq c2_a, get_color_eq c2_s, get_val_eq c2_s, get_l_eq c2_s, get_r_eq c2_s,
    get_parent_eq c2_s, get_color_eq c3_P, get_val_eq c3_P, get_l_eq c3_P, get_r_eq c3_P,
    get_parent_eq c3_P, get_color_eq c3_a, get_val_eq c3_a, get_l_eq c3_a, get_r_eq c3_a,
    get_parent_eq c3_a, get_color_eq c3_s, get_val_eq c3_s, get_l_eq c3_s, get_r_eq c3_s,
    get_parent_eq c3_s, get_color_eq c4_P, get_val_eq c4_P, get_l_eq c4_P, get_r_eq c4_P,
    get_parent_eq c4_P, get_color_eq c4_a, get_val_eq c4_a, get_l_eq c4_a, get_r_eq c4_a,
    get_parent_eq c4_a, get_color_eq c4_s, get_val_eq c4_s, get_l_eq c4_s, get_r_eq c4_s,
    get_parent_eq c4_s, e1, e2, e3, e4]

/-- One turn of `fixDoubleBlack`, as `fixDoubleBlack_step` runs it, at a left child whose black sibling has a red right child only. -/
theorem step_red_right_L {m : map K V} {q : List (frame K V)} {P s b : Nat}
    {cP : color_type} {vP vs vb : Option (K × V)}
    {X sl C D : tree K V}
    (h : Rep m (fill q (.node P cP vP X (.node s black vs sl (.node b red vb C D)))))
    (hroot : X.top ≠ m._root)
    (hsl : sl.color ≠ red) :
    ∃ m2, map.fixDoubleBlack_step m X.top (some P) (some s) =
        some (Sum.inl m2) ∧
      Rep m2 (fill q (.node s cP vs (.node P black vP X sl) (.node b black vb C D))) ∧ SameAux m m2 := by
  cases sl with
  | nil =>
    have hn := h.nodup
    simp only [nodup_fill_iff, nodup_paddrs_L, nodup_paddrs_R, disjoint_paddrs_L,
      disjoint_paddrs_R, mem_paddrs_L, mem_paddrs_R, tree.addrs_node, tree.addrs_nil,
      List.nodup_append, List.nodup_cons, List.mem_append, List.mem_cons,
      List.disjoint_append_left, List.disjoint_append_right, List.disjoint_cons_left,
      List.disjoint_cons_right, not_or, paddrs_nil, List.disjoint_nil_left,
      List.disjoint_nil_right, List.not_mem_nil, List.nil_append, List.nodup_nil,
      not_false_eq_true, true_and, and_true] at hn
    casesm* _ ∧ _
    have d_P_s : P ≠ s := by first | assumption | exact Ne.symm (by assumption)
    have d_P_b : P ≠ b := by first | assumption | exact Ne.symm (by assumption)
    have d_s_P : s ≠ P := by first | assumption | exact Ne.symm (by assumption)
    have d_s_b : s ≠ b := by first | assumption | exact Ne.symm (by assumption)
    have d_b_P : b ≠ P := by first | assumption | exact Ne.symm (by assumption)
    have d_b_s : b ≠ s := by first | assumption | exact Ne.symm (by assumption)
    have t_X_P : X.top ≠ some P := tree.top_ne_of_not_mem (by assumption)
    have u_X_P : some P ≠ X.top := tree.ne_top_of_not_mem (by assumption)
    have t_X_s : X.top ≠ some s := tree.top_ne_of_not_mem (by assumption)
    have u_X_s : some s ≠ X.top := tree.ne_top_of_not_mem (by assumption)
    have t_X_b : X.top ≠ some b := tree.top_ne_of_not_mem (by assumption)
    have u_X_b : some b ≠ X.top := tree.ne_top_of_not_mem (by assumption)
    have t_C_P : C.top ≠ some P := tree.top_ne_of_not_mem (by assumption)
    have u_C_P : some P ≠ C.top := tree.ne_top_of_not_mem (by assumption)
    have t_C_s : C.top ≠ some s := tree.top_ne_of_not_mem (by assumption)
    have u_C_s : some s ≠ C.top := tree.ne_top_of_not_mem (by assumption)
    have t_C_b : C.top ≠ some b := tree.top_ne_of_not_mem (by assumption)
    have u_C_b : some b ≠ C.top := tree.ne_top_of_not_mem (by assumption)
    have t_D_P : D.top ≠ some P := tree.top_ne_of_not_mem (by assumption)
    have u_D_P : some P ≠ D.top := tree.ne_top_of_not_mem (by assumption)
    have t_D_s : D.top ≠ some s := tree.top_ne_of_not_mem (by assumption)
    have u_D_s : some s ≠ D.top := tree.ne_top_of_not_mem (by assumption)
    have t_D_b : D.top ≠ some b := tree.top_ne_of_not_mem (by assumption)
    have u_D_b : some b ≠ D.top := tree.ne_top_of_not_mem (by assumption)
    have c0_P := Rep.cell (p := q) h
    have c0_s := Rep.cell (p := (.R P cP vP X) :: q) h
    have c0_b := Rep.cell (p := (.R s black vs .nil) :: (.R P cP vP X) :: q) h
    obtain ⟨m1, e1, r1, a1⟩ := Rep.set_color (p := (.R s black vs .nil) :: (.R P cP vP X) :: q) h black
    have c1_P := Rep.cell (p := q) r1
    have c1_s := Rep.cell (p := (.R P cP vP X) :: q) r1
    have c1_b := Rep.cell (p := (.R s black vs .nil) :: (.R P cP vP X) :: q) r1
    obtain ⟨m2, e2, r2, a2⟩ := Rep.set_color (p := (.R P cP vP X) :: q) r1 cP
    have c2_P := Rep.cell (p := q) r2
    have c2_s := Rep.cell (p := (.R P cP vP X) :: q) r2
    have c2_b := Rep.cell (p := (.R s cP vs .nil) :: (.R P cP vP X) :: q) r2
    obtain ⟨m3, e3, r3, a3⟩ := l_rotate_spec (p := q) r2
    have c3_P := Rep.cell (p := (.L s cP vs (.node b black vb C D)) :: q) r3
    have c3_s := Rep.cell (p := q) r3
    have c3_b := Rep.cell (p := (.R s cP vs (.node P cP vP X .nil)) :: q) r3
    obtain ⟨m4, e4, r4, a4⟩ := Rep.set_color (p := (.L s cP vs (.node b black vb C D)) :: q) r3 black
    have c4_P := Rep.cell (p := (.L s cP vs (.node b black vb C D)) :: q) r4
    have c4_s := Rep.cell (p := q) r4
    have c4_b := Rep.cell (p := (.R s cP vs (.node P black vP X .nil)) :: q) r4
    refine ⟨m4, ?_, r4, a1.trans (a2.trans (a3.trans a4))⟩
    simp [map.fixDoubleBlack_step, map.fixDoubleBlack_red_child, isOnLeft, hasRedChild, hroot, d_P_s,
      d_P_b, d_s_P, d_s_b, d_b_P, d_b_s, t_X_P, u_X_P, t_X_s, u_X_s, t_X_b, u_X_b, t_C_P, u_C_P,
      t_C_s, u_C_s, t_C_b, u_C_b, t_D_P, u_D_P, t_D_s, u_D_s, t_D_b, u_D_b, get_color_eq c0_P,
      get_val_eq c0_P, get_l_eq c0_P, get_r_eq c0_P, get_parent_eq c0_P, get_color_eq c0_s,
      get_val_eq c0_s, get_l_eq c0_s, get_r_eq c0_s, get_parent_eq c0_s, get_color_eq c0_b,
      get_val_eq c0_b, get_l_eq c0_b, get_r_eq c0_b, get_parent_eq c0_b, get_color_eq c1_P,
      get_val_eq c1_P, get_l_eq c1_P, get_r_eq c1_P, get_parent_eq c1_P, get_color_eq c1_s,
      get_val_eq c1_s, get_l_eq c1_s, get_r_eq c1_s, get_parent_eq c1_s, get_color_eq c1_b,
      get_val_eq c1_b, get_l_eq c1_b, get_r_eq c1_b, get_parent_eq c1_b, get_color_eq c2_P,
      get_val_eq c2_P, get_l_eq c2_P, get_r_eq c2_P, get_parent_eq c2_P, get_color_eq c2_s,
      get_val_eq c2_s, get_l_eq c2_s, get_r_eq c2_s, get_parent_eq c2_s, get_color_eq c2_b,
      get_val_eq c2_b, get_l_eq c2_b, get_r_eq c2_b, get_parent_eq c2_b, get_color_eq c3_P,
      get_val_eq c3_P, get_l_eq c3_P, get_r_eq c3_P, get_parent_eq c3_P, get_color_eq c3_s,
      get_val_eq c3_s, get_l_eq c3_s, get_r_eq c3_s, get_parent_eq c3_s, get_color_eq c3_b,
      get_val_eq c3_b, get_l_eq c3_b, get_r_eq c3_b, get_parent_eq c3_b, get_color_eq c4_P,
      get_val_eq c4_P, get_l_eq c4_P, get_r_eq c4_P, get_parent_eq c4_P, get_color_eq c4_s,
      get_val_eq c4_s, get_l_eq c4_s, get_r_eq c4_s, get_parent_eq c4_s, get_color_eq c4_b,
      get_val_eq c4_b, get_l_eq c4_b, get_r_eq c4_b, get_parent_eq c4_b, e1, e2, e3, e4]
  | node sla csl vsl sll slr =>
    simp only [tree.color] at hsl
    have hn := h.nodup
    simp only [nodup_fill_iff, nodup_paddrs_L, nodup_paddrs_R, disjoint_paddrs_L,
      disjoint_paddrs_R, mem_paddrs_L, mem_paddrs_R, tree.addrs_node, tree.addrs_nil,
      List.nodup_append, List.nodup_cons, List.mem_append, List.mem_cons,
      List.disjoint_append_left, List.disjoint_append_right, List.disjoint_cons_left,
      List.disjoint_cons_right, not_or, paddrs_nil, List.disjoint_nil_left,
      List.disjoint_nil_right, List.not_mem_nil, List.nil_append, List.nodup_nil,
      not_false_eq_true, true_and, and_true] at hn
    casesm* _ ∧ _
    have d_P_sla : P ≠ sla := by first | assumption | exact Ne.symm (by assumption)
    have d_P_s : P ≠ s := by first | assumption | exact Ne.symm (by assumption)
    have d_P_b : P ≠ b := by first | assumption | exact Ne.symm (by assumption)
    have d_sla_P : sla ≠ P := by first | assumption | exact Ne.symm (by assumption)
    have d_sla_s : sla ≠ s := by first | assumption | exact Ne.symm (by assumption)
    have d_sla_b : sla ≠ b := by first | assumption | exact Ne.symm (by assumption)
    have d_s_P : s ≠ P := by first | assumption | exact Ne.symm (by assumption)
    have d_s_sla : s ≠ sla := by first | assumption | exact Ne.symm (by assumption)
    have d_s_b : s ≠ b := by first | assumption | exact Ne.symm (by assumption)
    have d_b_P : b ≠ P := by first | assumption | exact Ne.symm (by assumption)
    have d_b_sla : b ≠ sla := by first | assumption | exact Ne.symm (by assumption)
    have d_b_s : b ≠ s := by first | assumption | exact Ne.symm (by assumption)
    have t_X_P : X.top ≠ some P := tree.top_ne_of_not_mem (by assumption)
    have u_X_P : some P ≠ X.top := tree.ne_top_of_not_mem (by assumption)
    have t_X_sla : X.top ≠ some sla := tree.top_ne_of_not_mem (by assumption)
    have u_X_sla : some sla ≠ X.top := tree.ne_top_of_not_mem (by assumption)
    have t_X_s : X.top ≠ some s := tree.top_ne_of_not_mem (by assumption)
    have u_X_s : some s ≠ X.top := tree.ne_top_of_not_mem (by assumption)
    have t_X_b : X.top ≠ some b := tree.top_ne_of_not_mem (by assumption)
    have u_X_b : some b ≠ X.top := tree.ne_top_of_not_mem (by assumption)
    have t_sll_P : sll.top ≠ some P := tree.top_ne_of_not_mem (by assumption)
    have u_sll_P : some P ≠ sll.top := tree.ne_top_of_not_mem (by assumption)
    have t_sll_sla : sll.top ≠ some sla := tree.top_ne_of_not_mem (by assumption)
    have u_sll_sla : some sla ≠ sll.top := tree.ne_top_of_not_mem (by assumption)
    have t_sll_s : sll.top ≠ some s := tree.top_ne_of_not_mem (by assumption)
    have u_sll_s : some s ≠ sll.top := tree.ne_top_of_not_mem (by assumption)
    have t_sll_b : sll.top ≠ some b := tree.top_ne_of_not_mem (by assumption)
    have u_sll_b : some b ≠ sll.top := tree.ne_top_of_not_mem (by assumption)
    have t_slr_P : slr.top ≠ some P := tree.top_ne_of_not_mem (by assumption)
    have u_slr_P : some P ≠ slr.top := tree.ne_top_of_not_mem (by assumption)
    have t_slr_sla : slr.top ≠ some sla := tree.top_ne_of_not_mem (by assumption)
    have u_slr_sla : some sla ≠ slr.top := tree.ne_top_of_not_mem (by assumption)
    have t_slr_s : slr.top ≠ some s := tree.top_ne_of_not_mem (by assumption)
    have u_slr_s : some s ≠ slr.top := tree.ne_top_of_not_mem (by assumption)
    have t_slr_b : slr.top ≠ some b := tree.top_ne_of_not_mem (by assumption)
    have u_slr_b : some b ≠ slr.top := tree.ne_top_of_not_mem (by assumption)
    have t_C_P : C.top ≠ some P := tree.top_ne_of_not_mem (by assumption)
    have u_C_P : some P ≠ C.top := tree.ne_top_of_not_mem (by assumption)
    have t_C_sla : C.top ≠ some sla := tree.top_ne_of_not_mem (by assumption)
    have u_C_sla : some sla ≠ C.top := tree.ne_top_of_not_mem (by assumption)
    have t_C_s : C.top ≠ some s := tree.top_ne_of_not_mem (by assumption)
    have u_C_s : some s ≠ C.top := tree.ne_top_of_not_mem (by assumption)
    have t_C_b : C.top ≠ some b := tree.top_ne_of_not_mem (by assumption)
    have u_C_b : some b ≠ C.top := tree.ne_top_of_not_mem (by assumption)
    have t_D_P : D.top ≠ some P := tree.top_ne_of_not_mem (by assumption)
    have u_D_P : some P ≠ D.top := tree.ne_top_of_not_mem (by assumption)
    have t_D_sla : D.top ≠ some sla := tree.top_ne_of_not_mem (by assumption)
    have u_D_sla : some sla ≠ D.top := tree.ne_top_of_not_mem (by assumption)
    have t_D_s : D.top ≠ some s := tree.top_ne_of_not_mem (by assumption)
    have u_D_s : some s ≠ D.top := tree.ne_top_of_not_mem (by assumption)
    have t_D_b : D.top ≠ some b := tree.top_ne_of_not_mem (by assumption)
    have u_D_b : some b ≠ D.top := tree.ne_top_of_not_mem (by assumption)
    have c0_P := Rep.cell (p := q) h
    have c0_sla := Rep.cell (p := (.L s black vs (.node b red vb C D)) :: (.R P cP vP X) :: q) h
    have c0_s := Rep.cell (p := (.R P cP vP X) :: q) h
    have c0_b := Rep.cell (p := (.R s black vs (.node sla csl vsl sll slr)) :: (.R P cP vP X) :: q) h
    obtain ⟨m1, e1, r1, a1⟩ := Rep.set_color (p := (.R s black vs (.node sla csl vsl sll slr)) :: (.R P cP vP X) :: q) h black
    have c1_P := Rep.cell (p := q) r1
    have c1_sla := Rep.cell (p := (.L s black vs (.node b black vb C D)) :: (.R P cP vP X) :: q) r1
    have c1_s := Rep.cell (p := (.R P cP vP X) :: q) r1
    have c1_b := Rep.cell (p := (.R s black vs (.node sla csl vsl sll slr)) :: (.R P cP vP X) :: q) r1
    obtain ⟨m2, e2, r2, a2⟩ := Rep.set_color (p := (.R P cP vP X) :: q) r1 cP
    have c2_P := Rep.cell (p := q) r2
    have c2_sla := Rep.cell (p := (.L s cP vs (.node b black vb C D)) :: (.R P cP vP X) :: q) r2
    have c2_s := Rep.cell (p := (.R P cP vP X) :: q) r2
    have c2_b := Rep.cell (p := (.R s cP vs (.node sla csl vsl sll slr)) :: (.R P cP vP X) :: q) r2
    obtain ⟨m3, e3, r3, a3⟩ := l_rotate_spec (p := q) r2
    have c3_P := Rep.cell (p := (.L s cP vs (.node b black vb C D)) :: q) r3
    have c3_sla := Rep.cell (p := (.R P cP vP X) :: (.L s cP vs (.node b black vb C D)) :: q) r3
    have c3_s := Rep.cell (p := q) r3
    have c3_b := Rep.cell (p := (.R s cP vs (.node P cP vP X (.node sla csl vsl sll slr))) :: q) r3
    obtain ⟨m4, e4, r4, a4⟩ := Rep.set_color (p := (.L s cP vs (.node b black vb C D)) :: q) r3 black
    have c4_P := Rep.cell (p := (.L s cP vs (.node b black vb C D)) :: q) r4
    have c4_sla := Rep.cell (p := (.R P black vP X) :: (.L s cP vs (.node b black vb C D)) :: q) r4
    have c4_s := Rep.cell (p := q) r4
    have c4_b := Rep.cell (p := (.R s cP vs (.node P black vP X (.node sla csl vsl sll slr))) :: q) r4
    refine ⟨m4, ?_, r4, a1.trans (a2.trans (a3.trans a4))⟩
    simp [map.fixDoubleBlack_step, map.fixDoubleBlack_red_child, isOnLeft, hasRedChild, hroot, hsl,
      d_P_sla, d_P_s, d_P_b, d_sla_P, d_sla_s, d_sla_b, d_s_P, d_s_sla, d_s_b, d_b_P, d_b_sla,
      d_b_s, t_X_P, u_X_P, t_X_sla, u_X_sla, t_X_s, u_X_s, t_X_b, u_X_b, t_sll_P, u_sll_P,
      t_sll_sla, u_sll_sla, t_sll_s, u_sll_s, t_sll_b, u_sll_b, t_slr_P, u_slr_P, t_slr_sla,
      u_slr_sla, t_slr_s, u_slr_s, t_slr_b, u_slr_b, t_C_P, u_C_P, t_C_sla, u_C_sla, t_C_s, u_C_s,
      t_C_b, u_C_b, t_D_P, u_D_P, t_D_sla, u_D_sla, t_D_s, u_D_s, t_D_b, u_D_b, get_color_eq c0_P,
      get_val_eq c0_P, get_l_eq c0_P, get_r_eq c0_P, get_parent_eq c0_P, get_color_eq c0_sla,
      get_val_eq c0_sla, get_l_eq c0_sla, get_r_eq c0_sla, get_parent_eq c0_sla, get_color_eq c0_s,
      get_val_eq c0_s, get_l_eq c0_s, get_r_eq c0_s, get_parent_eq c0_s, get_color_eq c0_b,
      get_val_eq c0_b, get_l_eq c0_b, get_r_eq c0_b, get_parent_eq c0_b, get_color_eq c1_P,
      get_val_eq c1_P, get_l_eq c1_P, get_r_eq c1_P, get_parent_eq c1_P, get_color_eq c1_sla,
      get_val_eq c1_sla, get_l_eq c1_sla, get_r_eq c1_sla, get_parent_eq c1_sla, get_color_eq c1_s,
      get_val_eq c1_s, get_l_eq c1_s, get_r_eq c1_s, get_parent_eq c1_s, get_color_eq c1_b,
      get_val_eq c1_b, get_l_eq c1_b, get_r_eq c1_b, get_parent_eq c1_b, get_color_eq c2_P,
      get_val_eq c2_P, get_l_eq c2_P, get_r_eq c2_P, get_parent_eq c2_P, get_color_eq c2_sla,
      get_val_eq c2_sla, get_l_eq c2_sla, get_r_eq c2_sla, get_parent_eq c2_sla, get_color_eq c2_s,
      get_val_eq c2_s, get_l_eq c2_s, get_r_eq c2_s, get_parent_eq c2_s, get_color_eq c2_b,
      get_val_eq c2_b, get_l_eq c2_b, get_r_eq c2_b, get_parent_eq c2_b, get_color_eq c3_P,
      get_val_eq c3_P, get_l_eq c3_P, get_r_eq c3_P, get_parent_eq c3_P, get_color_eq c3_sla,
      get_val_eq c3_sla, get_l_eq c3_sla, get_r_eq c3_sla, get_parent_eq c3_sla, get_color_eq c3_s,
      get_val_eq c3_s, get_l_eq c3_s, get_r_eq c3_s, get_parent_eq c3_s, get_color_eq c3_b,
      get_val_eq c3_b, get_l_eq c3_b, get_r_eq c3_b, get_parent_eq c3_b, get_color_eq c4_P,
      get_val_eq c4_P, get_l_eq c4_P, get_r_eq c4_P, get_parent_eq c4_P, get_color_eq c4_sla,
      get_val_eq c4_sla, get_l_eq c4_sla, get_r_eq c4_sla, get_parent_eq c4_sla, get_color_eq c4_s,
      get_val_eq c4_s, get_l_eq c4_s, get_r_eq c4_s, get_parent_eq c4_s, get_color_eq c4_b,
      get_val_eq c4_b, get_l_eq c4_b, get_r_eq c4_b, get_parent_eq c4_b, e1, e2, e3, e4]

/-- One turn of `fixDoubleBlack`, as `fixDoubleBlack_step` runs it, at a left child whose black sibling has no red child, below a red parent. -/
theorem step_black_red_parent_L {m : map K V} {q : List (frame K V)} {P s : Nat} {vP vs : Option (K × V)}
    {X sl sr : tree K V}
    (h : Rep m (fill q (.node P red vP X (.node s black vs sl sr))))
    (hroot : X.top ≠ m._root)
    (hsl : sl.color ≠ red)
    (hsr : sr.color ≠ red) :
    ∃ m2, map.fixDoubleBlack_step m X.top (some P) (some s) =
        some (Sum.inl m2) ∧
      Rep m2 (fill q (.node P black vP X (.node s red vs sl sr))) ∧ SameAux m m2 := by
  cases sl with
  | nil =>
    cases sr with
    | nil =>
      have hn := h.nodup
      simp only [nodup_fill_iff, nodup_paddrs_L, nodup_paddrs_R, disjoint_paddrs_L,
        disjoint_paddrs_R, mem_paddrs_L, mem_paddrs_R, tree.addrs_node, tree.addrs_nil,
        List.nodup_append, List.nodup_cons, List.mem_append, List.mem_cons,
        List.disjoint_append_left, List.disjoint_append_right, List.disjoint_cons_left,
        List.disjoint_cons_right, not_or, paddrs_nil, List.disjoint_nil_left,
        List.disjoint_nil_right, List.not_mem_nil, List.nil_append, List.nodup_nil,
        not_false_eq_true, true_and, and_true] at hn
      casesm* _ ∧ _
      have d_P_s : P ≠ s := by first | assumption | exact Ne.symm (by assumption)
      have d_s_P : s ≠ P := by first | assumption | exact Ne.symm (by assumption)
      have t_X_P : X.top ≠ some P := tree.top_ne_of_not_mem (by assumption)
      have u_X_P : some P ≠ X.top := tree.ne_top_of_not_mem (by assumption)
      have t_X_s : X.top ≠ some s := tree.top_ne_of_not_mem (by assumption)
      have u_X_s : some s ≠ X.top := tree.ne_top_of_not_mem (by assumption)
      have c0_P := Rep.cell (p := q) h
      have c0_s := Rep.cell (p := (.R P red vP X) :: q) h
      obtain ⟨m1, e1, r1, a1⟩ := Rep.set_color (p := (.R P red vP X) :: q) h red
      have c1_P := Rep.cell (p := q) r1
      have c1_s := Rep.cell (p := (.R P red vP X) :: q) r1
      obtain ⟨m2, e2, r2, a2⟩ := Rep.set_color (p := q) r1 black
      have c2_P := Rep.cell (p := q) r2
      have c2_s := Rep.cell (p := (.R P black vP X) :: q) r2
      refine ⟨m2, ?_, r2, a1.trans a2⟩
      simp [map.fixDoubleBlack_step, map.fixDoubleBlack_red_child, isOnLeft, hasRedChild, hroot, d_P_s,
        d_s_P, t_X_P, u_X_P, t_X_s, u_X_s, get_color_eq c0_P, get_val_eq c0_P, get_l_eq c0_P,
        get_r_eq c0_P, get_parent_eq c0_P, get_color_eq c0_s, get_val_eq c0_s, get_l_eq c0_s,
        get_r_eq c0_s, get_parent_eq c0_s, get_color_eq c1_P, get_val_eq c1_P, get_l_eq c1_P,
        get_r_eq c1_P, get_parent_eq c1_P, get_color_eq c1_s, get_val_eq c1_s, get_l_eq c1_s,
        get_r_eq c1_s, get_parent_eq c1_s, get_color_eq c2_P, get_val_eq c2_P, get_l_eq c2_P,
        get_r_eq c2_P, get_parent_eq c2_P, get_color_eq c2_s, get_val_eq c2_s, get_l_eq c2_s,
        get_r_eq c2_s, get_parent_eq c2_s, e1, e2]
    | node sra csr vsr srl srr =>
      simp only [tree.color] at hsr
      have hn := h.nodup
      simp only [nodup_fill_iff, nodup_paddrs_L, nodup_paddrs_R, disjoint_paddrs_L,
        disjoint_paddrs_R, mem_paddrs_L, mem_paddrs_R, tree.addrs_node, tree.addrs_nil,
        List.nodup_append, List.nodup_cons, List.mem_append, List.mem_cons,
        List.disjoint_append_left, List.disjoint_append_right, List.disjoint_cons_left,
        List.disjoint_cons_right, not_or, paddrs_nil, List.disjoint_nil_left,
        List.disjoint_nil_right, List.not_mem_nil, List.nil_append, List.nodup_nil,
        not_false_eq_true, true_and, and_true] at hn
      casesm* _ ∧ _
      have d_P_s : P ≠ s := by first | assumption | exact Ne.symm (by assumption)
      have d_P_sra : P ≠ sra := by first | assumption | exact Ne.symm (by assumption)
      have d_s_P : s ≠ P := by first | assumption | exact Ne.symm (by assumption)
      have d_s_sra : s ≠ sra := by first | assumption | exact Ne.symm (by assumption)
      have d_sra_P : sra ≠ P := by first | assumption | exact Ne.symm (by assumption)
      have d_sra_s : sra ≠ s := by first | assumption | exact Ne.symm (by assumption)
      have t_X_P : X.top ≠ some P := tree.top_ne_of_not_mem (by assumption)
      have u_X_P : some P ≠ X.top := tree.ne_top_of_not_mem (by assumption)
      have t_X_s : X.top ≠ some s := tree.top_ne_of_not_mem (by assumption)
      have u_X_s : some s ≠ X.top := tree.ne_top_of_not_mem (by assumption)
      have t_X_sra : X.top ≠ some sra := tree.top_ne_of_not_mem (by assumption)
      have u_X_sra : some sra ≠ X.top := tree.ne_top_of_not_mem (by assumption)
      have t_srl_P : srl.top ≠ some P := tree.top_ne_of_not_mem (by assumption)
      have u_srl_P : some P ≠ srl.top := tree.ne_top_of_not_mem (by assumption)
      have t_srl_s : srl.top ≠ some s := tree.top_ne_of_not_mem (by assumption)
      have u_srl_s : some s ≠ srl.top := tree.ne_top_of_not_mem (by assumption)
      have t_srl_sra : srl.top ≠ some sra := tree.top_ne_of_not_mem (by assumption)
      have u_srl_sra : some sra ≠ srl.top := tree.ne_top_of_not_mem (by assumption)
      have t_srr_P : srr.top ≠ some P := tree.top_ne_of_not_mem (by assumption)
      have u_srr_P : some P ≠ srr.top := tree.ne_top_of_not_mem (by assumption)
      have t_srr_s : srr.top ≠ some s := tree.top_ne_of_not_mem (by assumption)
      have u_srr_s : some s ≠ srr.top := tree.ne_top_of_not_mem (by assumption)
      have t_srr_sra : srr.top ≠ some sra := tree.top_ne_of_not_mem (by assumption)
      have u_srr_sra : some sra ≠ srr.top := tree.ne_top_of_not_mem (by assumption)
      have c0_P := Rep.cell (p := q) h
      have c0_s := Rep.cell (p := (.R P red vP X) :: q) h
      have c0_sra := Rep.cell (p := (.R s black vs .nil) :: (.R P red vP X) :: q) h
      obtain ⟨m1, e1, r1, a1⟩ := Rep.set_color (p := (.R P red vP X) :: q) h red
      have c1_P := Rep.cell (p := q) r1
      have c1_s := Rep.cell (p := (.R P red vP X) :: q) r1
      have c1_sra := Rep.cell (p := (.R s red vs .nil) :: (.R P red vP X) :: q) r1
      obtain ⟨m2, e2, r2, a2⟩ := Rep.set_color (p := q) r1 black
      have c2_P := Rep.cell (p := q) r2
      have c2_s := Rep.cell (p := (.R P black vP X) :: q) r2
      have c2_sra := Rep.cell (p := (.R s red vs .nil) :: (.R P black vP X) :: q) r2
      refine ⟨m2, ?_, r2, a1.trans a2⟩
      simp [map.fixDoubleBlack_step, map.fixDoubleBlack_red_child, isOnLeft, hasRedChild, hroot, hsr,
        d_P_s, d_P_sra, d_s_P, d_s_sra, d_sra_P, d_sra_s, t_X_P, u_X_P, t_X_s, u_X_s, t_X_sra,
        u_X_sra, t_srl_P, u_srl_P, t_srl_s, u_srl_s, t_srl_sra, u_srl_sra, t_srr_P, u_srr_P, t_srr_s,
        u_srr_s, t_srr_sra, u_srr_sra, get_color_eq c0_P, get_val_eq c0_P, get_l_eq c0_P,
        get_r_eq c0_P, get_parent_eq c0_P, get_color_eq c0_s, get_val_eq c0_s, get_l_eq c0_s,
        get_r_eq c0_s, get_parent_eq c0_s, get_color_eq c0_sra, get_val_eq c0_sra, get_l_eq c0_sra,
        get_r_eq c0_sra, get_parent_eq c0_sra, get_color_eq c1_P, get_val_eq c1_P, get_l_eq c1_P,
        get_r_eq c1_P, get_parent_eq c1_P, get_color_eq c1_s, get_val_eq c1_s, get_l_eq c1_s,
        get_r_eq c1_s, get_parent_eq c1_s, get_color_eq c1_sra, get_val_eq c1_sra, get_l_eq c1_sra,
        get_r_eq c1_sra, get_parent_eq c1_sra, get_color_eq c2_P, get_val_eq c2_P, get_l_eq c2_P,
        get_r_eq c2_P, get_parent_eq c2_P, get_color_eq c2_s, get_val_eq c2_s, get_l_eq c2_s,
        get_r_eq c2_s, get_parent_eq c2_s, get_color_eq c2_sra, get_val_eq c2_sra, get_l_eq c2_sra,
        get_r_eq c2_sra, get_parent_eq c2_sra, e1, e2]
  | node sla csl vsl sll slr =>
    simp only [tree.color] at hsl
    cases sr with
    | nil =>
      have hn := h.nodup
      simp only [nodup_fill_iff, nodup_paddrs_L, nodup_paddrs_R, disjoint_paddrs_L,
        disjoint_paddrs_R, mem_paddrs_L, mem_paddrs_R, tree.addrs_node, tree.addrs_nil,
        List.nodup_append, List.nodup_cons, List.mem_append, List.mem_cons,
        List.disjoint_append_left, List.disjoint_append_right, List.disjoint_cons_left,
        List.disjoint_cons_right, not_or, paddrs_nil, List.disjoint_nil_left,
        List.disjoint_nil_right, List.not_mem_nil, List.nil_append, List.nodup_nil,
        not_false_eq_true, true_and, and_true] at hn
      casesm* _ ∧ _
      have d_P_sla : P ≠ sla := by first | assumption | exact Ne.symm (by assumption)
      have d_P_s : P ≠ s := by first | assumption | exact Ne.symm (by assumption)
      have d_sla_P : sla ≠ P := by first | assumption | exact Ne.symm (by assumption)
      have d_sla_s : sla ≠ s := by first | assumption | exact Ne.symm (by assumption)
      have d_s_P : s ≠ P := by first | assumption | exact Ne.symm (by assumption)
      have d_s_sla : s ≠ sla := by first | assumption | exact Ne.symm (by assumption)
      have t_X_P : X.top ≠ some P := tree.top_ne_of_not_mem (by assumption)
      have u_X_P : some P ≠ X.top := tree.ne_top_of_not_mem (by assumption)
      have t_X_sla : X.top ≠ some sla := tree.top_ne_of_not_mem (by assumption)
      have u_X_sla : some sla ≠ X.top := tree.ne_top_of_not_mem (by assumption)
      have t_X_s : X.top ≠ some s := tree.top_ne_of_not_mem (by assumption)
      have u_X_s : some s ≠ X.top := tree.ne_top_of_not_mem (by assumption)
      have t_sll_P : sll.top ≠ some P := tree.top_ne_of_not_mem (by assumption)
      have u_sll_P : some P ≠ sll.top := tree.ne_top_of_not_mem (by assumption)
      have t_sll_sla : sll.top ≠ some sla := tree.top_ne_of_not_mem (by assumption)
      have u_sll_sla : some sla ≠ sll.top := tree.ne_top_of_not_mem (by assumption)
      have t_sll_s : sll.top ≠ some s := tree.top_ne_of_not_mem (by assumption)
      have u_sll_s : some s ≠ sll.top := tree.ne_top_of_not_mem (by assumption)
      have t_slr_P : slr.top ≠ some P := tree.top_ne_of_not_mem (by assumption)
      have u_slr_P : some P ≠ slr.top := tree.ne_top_of_not_mem (by assumption)
      have t_slr_sla : slr.top ≠ some sla := tree.top_ne_of_not_mem (by assumption)
      have u_slr_sla : some sla ≠ slr.top := tree.ne_top_of_not_mem (by assumption)
      have t_slr_s : slr.top ≠ some s := tree.top_ne_of_not_mem (by assumption)
      have u_slr_s : some s ≠ slr.top := tree.ne_top_of_not_mem (by assumption)
      have c0_P := Rep.cell (p := q) h
      have c0_sla := Rep.cell (p := (.L s black vs .nil) :: (.R P red vP X) :: q) h
      have c0_s := Rep.cell (p := (.R P red vP X) :: q) h
      obtain ⟨m1, e1, r1, a1⟩ := Rep.set_color (p := (.R P red vP X) :: q) h red
      have c1_P := Rep.cell (p := q) r1
      have c1_sla := Rep.cell (p := (.L s red vs .nil) :: (.R P red vP X) :: q) r1
      have c1_s := Rep.cell (p := (.R P red vP X) :: q) r1
      obtain ⟨m2, e2, r2, a2⟩ := Rep.set_color (p := q) r1 black
      have c2_P := Rep.cell (p := q) r2
      have c2_sla := Rep.cell (p := (.L s red vs .nil) :: (.R P black vP X) :: q) r2
      have c2_s := Rep.cell (p := (.R P black vP X) :: q) r2
      refine ⟨m2, ?_, r2, a1.trans a2⟩
      simp [map.fixDoubleBlack_step, map.fixDoubleBlack_red_child, isOnLeft, hasRedChild, hroot, hsl,
        d_P_sla, d_P_s, d_sla_P, d_sla_s, d_s_P, d_s_sla, t_X_P, u_X_P, t_X_sla, u_X_sla, t_X_s,
        u_X_s, t_sll_P, u_sll_P, t_sll_sla, u_sll_sla, t_sll_s, u_sll_s, t_slr_P, u_slr_P, t_slr_sla,
        u_slr_sla, t_slr_s, u_slr_s, get_color_eq c0_P, get_val_eq c0_P, get_l_eq c0_P,
        get_r_eq c0_P, get_parent_eq c0_P, get_color_eq c0_sla, get_val_eq c0_sla, get_l_eq c0_sla,
        get_r_eq c0_sla, get_parent_eq c0_sla, get_color_eq c0_s, get_val_eq c0_s, get_l_eq c0_s,
        get_r_eq c0_s, get_parent_eq c0_s, get_color_eq c1_P, get_val_eq c1_P, get_l_eq c1_P,
        get_r_eq c1_P, get_parent_eq c1_P, get_color_eq c1_sla, get_val_eq c1_sla, get_l_eq c1_sla,
        get_r_eq c1_sla, get_parent_eq c1_sla, get_color_eq c1_s, get_val_eq c1_s, get_l_eq c1_s,
        get_r_eq c1_s, get_parent_eq c1_s, get_color_eq c2_P, get_val_eq c2_P, get_l_eq c2_P,
        get_r_eq c2_P, get_parent_eq c2_P, get_color_eq c2_sla, get_val_eq c2_sla, get_l_eq c2_sla,
        get_r_eq c2_sla, get_parent_eq c2_sla, get_color_eq c2_s, get_val_eq c2_s, get_l_eq c2_s,
        get_r_eq c2_s, get_parent_eq c2_s, e1, e2]
    | node sra csr vsr srl srr =>
      simp only [tree.color] at hsr
      have hn := h.nodup
      simp only [nodup_fill_iff, nodup_paddrs_L, nodup_paddrs_R, disjoint_paddrs_L,
        disjoint_paddrs_R, mem_paddrs_L, mem_paddrs_R, tree.addrs_node, tree.addrs_nil,
        List.nodup_append, List.nodup_cons, List.mem_append, List.mem_cons,
        List.disjoint_append_left, List.disjoint_append_right, List.disjoint_cons_left,
        List.disjoint_cons_right, not_or, paddrs_nil, List.disjoint_nil_left,
        List.disjoint_nil_right, List.not_mem_nil, List.nil_append, List.nodup_nil,
        not_false_eq_true, true_and, and_true] at hn
      casesm* _ ∧ _
      have d_P_sla : P ≠ sla := by first | assumption | exact Ne.symm (by assumption)
      have d_P_s : P ≠ s := by first | assumption | exact Ne.symm (by assumption)
      have d_P_sra : P ≠ sra := by first | assumption | exact Ne.symm (by assumption)
      have d_sla_P : sla ≠ P := by first | assumption | exact Ne.symm (by assumption)
      have d_sla_s : sla ≠ s := by first | assumption | exact Ne.symm (by assumption)
      have d_sla_sra : sla ≠ sra := by first | assumption | exact Ne.symm (by assumption)
      have d_s_P : s ≠ P := by first | assumption | exact Ne.symm (by assumption)
      have d_s_sla : s ≠ sla := by first | assumption | exact Ne.symm (by assumption)
      have d_s_sra : s ≠ sra := by first | assumption | exact Ne.symm (by assumption)
      have d_sra_P : sra ≠ P := by first | assumption | exact Ne.symm (by assumption)
      have d_sra_sla : sra ≠ sla := by first | assumption | exact Ne.symm (by assumption)
      have d_sra_s : sra ≠ s := by first | assumption | exact Ne.symm (by assumption)
      have t_X_P : X.top ≠ some P := tree.top_ne_of_not_mem (by assumption)
      have u_X_P : some P ≠ X.top := tree.ne_top_of_not_mem (by assumption)
      have t_X_sla : X.top ≠ some sla := tree.top_ne_of_not_mem (by assumption)
      have u_X_sla : some sla ≠ X.top := tree.ne_top_of_not_mem (by assumption)
      have t_X_s : X.top ≠ some s := tree.top_ne_of_not_mem (by assumption)
      have u_X_s : some s ≠ X.top := tree.ne_top_of_not_mem (by assumption)
      have t_X_sra : X.top ≠ some sra := tree.top_ne_of_not_mem (by assumption)
      have u_X_sra : some sra ≠ X.top := tree.ne_top_of_not_mem (by assumption)
      have t_sll_P : sll.top ≠ some P := tree.top_ne_of_not_mem (by assumption)
      have u_sll_P : some P ≠ sll.top := tree.ne_top_of_not_mem (by assumption)
      have t_sll_sla : sll.top ≠ some sla := tree.top_ne_of_not_mem (by assumption)
      have u_sll_sla : some sla ≠ sll.top := tree.ne_top_of_not_mem (by assumption)
      have t_sll_s : sll.top ≠ some s := tree.top_ne_of_not_mem (by assumption)
      have u_sll_s : some s ≠ sll.top := tree.ne_top_of_not_mem (by assumption)
      have t_sll_sra : sll.top ≠ some sra := tree.top_ne_of_not_mem (by assumption)
      have u_sll_sra : some sra ≠ sll.top := tree.ne_top_of_not_mem (by assumption)
      have t_slr_P : slr.top ≠ some P := tree.top_ne_of_not_mem (by assumption)
      have u_slr_P : some P ≠ slr.top := tree.ne_top_of_not_mem (by assumption)
      have t_slr_sla : slr.top ≠ some sla := tree.top_ne_of_not_mem (by assumption)
      have u_slr_sla : some sla ≠ slr.top := tree.ne_top_of_not_mem (by assumption)
      have t_slr_s : slr.top ≠ some s := tree.top_ne_of_not_mem (by assumption)
      have u_slr_s : some s ≠ slr.top := tree.ne_top_of_not_mem (by assumption)
      have t_slr_sra : slr.top ≠ some sra := tree.top_ne_of_not_mem (by assumption)
      have u_slr_sra : some sra ≠ slr.top := tree.ne_top_of_not_mem (by assumption)
      have t_srl_P : srl.top ≠ some P := tree.top_ne_of_not_mem (by assumption)
      have u_srl_P : some P ≠ srl.top := tree.ne_top_of_not_mem (by assumption)
      have t_srl_sla : srl.top ≠ some sla := tree.top_ne_of_not_mem (by assumption)
      have u_srl_sla : some sla ≠ srl.top := tree.ne_top_of_not_mem (by assumption)
      have t_srl_s : srl.top ≠ some s := tree.top_ne_of_not_mem (by assumption)
      have u_srl_s : some s ≠ srl.top := tree.ne_top_of_not_mem (by assumption)
      have t_srl_sra : srl.top ≠ some sra := tree.top_ne_of_not_mem (by assumption)
      have u_srl_sra : some sra ≠ srl.top := tree.ne_top_of_not_mem (by assumption)
      have t_srr_P : srr.top ≠ some P := tree.top_ne_of_not_mem (by assumption)
      have u_srr_P : some P ≠ srr.top := tree.ne_top_of_not_mem (by assumption)
      have t_srr_sla : srr.top ≠ some sla := tree.top_ne_of_not_mem (by assumption)
      have u_srr_sla : some sla ≠ srr.top := tree.ne_top_of_not_mem (by assumption)
      have t_srr_s : srr.top ≠ some s := tree.top_ne_of_not_mem (by assumption)
      have u_srr_s : some s ≠ srr.top := tree.ne_top_of_not_mem (by assumption)
      have t_srr_sra : srr.top ≠ some sra := tree.top_ne_of_not_mem (by assumption)
      have u_srr_sra : some sra ≠ srr.top := tree.ne_top_of_not_mem (by assumption)
      have c0_P := Rep.cell (p := q) h
      have c0_sla := Rep.cell (p := (.L s black vs (.node sra csr vsr srl srr)) :: (.R P red vP X) :: q) h
      have c0_s := Rep.cell (p := (.R P red vP X) :: q) h
      have c0_sra := Rep.cell (p := (.R s black vs (.node sla csl vsl sll slr)) :: (.R P red vP X) :: q) h
      obtain ⟨m1, e1, r1, a1⟩ := Rep.set_color (p := (.R P red vP X) :: q) h red
      have c1_P := Rep.cell (p := q) r1
      have c1_sla := Rep.cell (p := (.L s red vs (.node sra csr vsr srl srr)) :: (.R P red vP X) :: q) r1
      have c1_s := Rep.cell (p := (.R P red vP X) :: q) r1
      have c1_sra := Rep.cell (p := (.R s red vs (.node sla csl vsl sll slr)) :: (.R P red vP X) :: q) r1
      obtain ⟨m2, e2, r2, a2⟩ := Rep.set_color (p := q) r1 black
      have c2_P := Rep.cell (p := q) r2
      have c2_sla := Rep.cell (p := (.L s red vs (.node sra csr vsr srl srr)) :: (.R P black vP X) :: q) r2
      have c2_s := Rep.cell (p := (.R P black vP X) :: q) r2
      have c2_sra := Rep.cell (p := (.R s red vs (.node sla csl vsl sll slr)) :: (.R P black vP X) :: q) r2
      refine ⟨m2, ?_, r2, a1.trans a2⟩
      simp [map.fixDoubleBlack_step, map.fixDoubleBlack_red_child, isOnLeft, hasRedChild, hroot, hsl, hsr,
        d_P_sla, d_P_s, d_P_sra, d_sla_P, d_sla_s, d_sla_sra, d_s_P, d_s_sla, d_s_sra, d_sra_P,
        d_sra_sla, d_sra_s, t_X_P, u_X_P, t_X_sla, u_X_sla, t_X_s, u_X_s, t_X_sra, u_X_sra, t_sll_P,
        u_sll_P, t_sll_sla, u_sll_sla, t_sll_s, u_sll_s, t_sll_sra, u_sll_sra, t_slr_P, u_slr_P,
        t_slr_sla, u_slr_sla, t_slr_s, u_slr_s, t_slr_sra, u_slr_sra, t_srl_P, u_srl_P, t_srl_sla,
        u_srl_sla, t_srl_s, u_srl_s, t_srl_sra, u_srl_sra, t_srr_P, u_srr_P, t_srr_sla, u_srr_sla,
        t_srr_s, u_srr_s, t_srr_sra, u_srr_sra, get_color_eq c0_P, get_val_eq c0_P, get_l_eq c0_P,
        get_r_eq c0_P, get_parent_eq c0_P, get_color_eq c0_sla, get_val_eq c0_sla, get_l_eq c0_sla,
        get_r_eq c0_sla, get_parent_eq c0_sla, get_color_eq c0_s, get_val_eq c0_s, get_l_eq c0_s,
        get_r_eq c0_s, get_parent_eq c0_s, get_color_eq c0_sra, get_val_eq c0_sra, get_l_eq c0_sra,
        get_r_eq c0_sra, get_parent_eq c0_sra, get_color_eq c1_P, get_val_eq c1_P, get_l_eq c1_P,
        get_r_eq c1_P, get_parent_eq c1_P, get_color_eq c1_sla, get_val_eq c1_sla, get_l_eq c1_sla,
        get_r_eq c1_sla, get_parent_eq c1_sla, get_color_eq c1_s, get_val_eq c1_s, get_l_eq c1_s,
        get_r_eq c1_s, get_parent_eq c1_s, get_color_eq c1_sra, get_val_eq c1_sra, get_l_eq c1_sra,
        get_r_eq c1_sra, get_parent_eq c1_sra, get_color_eq c2_P, get_val_eq c2_P, get_l_eq c2_P,
        get_r_eq c2_P, get_parent_eq c2_P, get_color_eq c2_sla, get_val_eq c2_sla, get_l_eq c2_sla,
        get_r_eq c2_sla, get_parent_eq c2_sla, get_color_eq c2_s, get_val_eq c2_s, get_l_eq c2_s,
        get_r_eq c2_s, get_parent_eq c2_s, get_color_eq c2_sra, get_val_eq c2_sra, get_l_eq c2_sra,
        get_r_eq c2_sra, get_parent_eq c2_sra, e1, e2]

/-- One turn of `fixDoubleBlack`, as `fixDoubleBlack_step` runs it, at a left child whose black sibling has no red child, below a black parent: the parent is repaired next. -/
theorem step_black_black_parent_L {m : map K V} {q : List (frame K V)} {P s : Nat} {vP vs : Option (K × V)}
    {X sl sr : tree K V}
    (h : Rep m (fill q (.node P black vP X (.node s black vs sl sr))))
    (hroot : X.top ≠ m._root)
    (hsl : sl.color ≠ red)
    (hsr : sr.color ≠ red) :
    ∃ m2, map.fixDoubleBlack_step m X.top (some P) (some s) =
        some (Sum.inr (m2, some P, ptop q, psib q)) ∧
      Rep m2 (fill q (.node P black vP X (.node s red vs sl sr))) ∧ SameAux m m2 := by
  cases sl with
  | nil =>
    cases sr with
    | nil =>
      have hn := h.nodup
      simp only [nodup_fill_iff, nodup_paddrs_L, nodup_paddrs_R, disjoint_paddrs_L,
        disjoint_paddrs_R, mem_paddrs_L, mem_paddrs_R, tree.addrs_node, tree.addrs_nil,
        List.nodup_append, List.nodup_cons, List.mem_append, List.mem_cons,
        List.disjoint_append_left, List.disjoint_append_right, List.disjoint_cons_left,
        List.disjoint_cons_right, not_or, paddrs_nil, List.disjoint_nil_left,
        List.disjoint_nil_right, List.not_mem_nil, List.nil_append, List.nodup_nil,
        not_false_eq_true, true_and, and_true] at hn
      casesm* _ ∧ _
      have d_P_s : P ≠ s := by first | assumption | exact Ne.symm (by assumption)
      have d_s_P : s ≠ P := by first | assumption | exact Ne.symm (by assumption)
      have t_X_P : X.top ≠ some P := tree.top_ne_of_not_mem (by assumption)
      have u_X_P : some P ≠ X.top := tree.ne_top_of_not_mem (by assumption)
      have t_X_s : X.top ≠ some s := tree.top_ne_of_not_mem (by assumption)
      have u_X_s : some s ≠ X.top := tree.ne_top_of_not_mem (by assumption)
      have c0_P := Rep.cell (p := q) h
      have c0_s := Rep.cell (p := (.R P black vP X) :: q) h
      obtain ⟨m1, e1, r1, a1⟩ := Rep.set_color (p := (.R P black vP X) :: q) h red
      have c1_P := Rep.cell (p := q) r1
      have c1_s := Rep.cell (p := (.R P black vP X) :: q) r1
      have sib_eq := Rep.sibling_eq (p := q) r1
      refine ⟨m1, ?_, r1, a1⟩
      simp [map.fixDoubleBlack_step, map.fixDoubleBlack_red_child, isOnLeft, hasRedChild, hroot, d_P_s,
        d_s_P, t_X_P, u_X_P, t_X_s, u_X_s, get_color_eq c0_P, get_val_eq c0_P, get_l_eq c0_P,
        get_r_eq c0_P, get_parent_eq c0_P, get_color_eq c0_s, get_val_eq c0_s, get_l_eq c0_s,
        get_r_eq c0_s, get_parent_eq c0_s, get_color_eq c1_P, get_val_eq c1_P, get_l_eq c1_P,
        get_r_eq c1_P, get_parent_eq c1_P, get_color_eq c1_s, get_val_eq c1_s, get_l_eq c1_s,
        get_r_eq c1_s, get_parent_eq c1_s, e1, sib_eq]
    | node sra csr vsr srl srr =>
      simp only [tree.color] at hsr
      have hn := h.nodup
      simp only [nodup_fill_iff, nodup_paddrs_L, nodup_paddrs_R, disjoint_paddrs_L,
        disjoint_paddrs_R, mem_paddrs_L, mem_paddrs_R, tree.addrs_node, tree.addrs_nil,
        List.nodup_append, List.nodup_cons, List.mem_append, List.mem_cons,
        List.disjoint_append_left, List.disjoint_append_right, List.disjoint_cons_left,
        List.disjoint_cons_right, not_or, paddrs_nil, List.disjoint_nil_left,
        List.disjoint_nil_right, List.not_mem_nil, List.nil_append, List.nodup_nil,
        not_false_eq_true, true_and, and_true] at hn
      casesm* _ ∧ _
      have d_P_s : P ≠ s := by first | assumption | exact Ne.symm (by assumption)
      have d_P_sra : P ≠ sra := by first | assumption | exact Ne.symm (by assumption)
      have d_s_P : s ≠ P := by first | assumption | exact Ne.symm (by assumption)
      have d_s_sra : s ≠ sra := by first | assumption | exact Ne.symm (by assumption)
      have d_sra_P : sra ≠ P := by first | assumption | exact Ne.symm (by assumption)
      have d_sra_s : sra ≠ s := by first | assumption | exact Ne.symm (by assumption)
      have t_X_P : X.top ≠ some P := tree.top_ne_of_not_mem (by assumption)
      have u_X_P : some P ≠ X.top := tree.ne_top_of_not_mem (by assumption)
      have t_X_s : X.top ≠ some s := tree.top_ne_of_not_mem (by assumption)
      have u_X_s : some s ≠ X.top := tree.ne_top_of_not_mem (by assumption)
      have t_X_sra : X.top ≠ some sra := tree.top_ne_of_not_mem (by assumption)
      have u_X_sra : some sra ≠ X.top := tree.ne_top_of_not_mem (by assumption)
      have t_srl_P : srl.top ≠ some P := tree.top_ne_of_not_mem (by assumption)
      have u_srl_P : some P ≠ srl.top := tree.ne_top_of_not_mem (by assumption)
      have t_srl_s : srl.top ≠ some s := tree.top_ne_of_not_mem (by assumption)
      have u_srl_s : some s ≠ srl.top := tree.ne_top_of_not_mem (by assumption)
      have t_srl_sra : srl.top ≠ some sra := tree.top_ne_of_not_mem (by assumption)
      have u_srl_sra : some sra ≠ srl.top := tree.ne_top_of_not_mem (by assumption)
      have t_srr_P : srr.top ≠ some P := tree.top_ne_of_not_mem (by assumption)
      have u_srr_P : some P ≠ srr.top := tree.ne_top_of_not_mem (by assumption)
      have t_srr_s : srr.top ≠ some s := tree.top_ne_of_not_mem (by assumption)
      have u_srr_s : some s ≠ srr.top := tree.ne_top_of_not_mem (by assumption)
      have t_srr_sra : srr.top ≠ some sra := tree.top_ne_of_not_mem (by assumption)
      have u_srr_sra : some sra ≠ srr.top := tree.ne_top_of_not_mem (by assumption)
      have c0_P := Rep.cell (p := q) h
      have c0_s := Rep.cell (p := (.R P black vP X) :: q) h
      have c0_sra := Rep.cell (p := (.R s black vs .nil) :: (.R P black vP X) :: q) h
      obtain ⟨m1, e1, r1, a1⟩ := Rep.set_color (p := (.R P black vP X) :: q) h red
      have c1_P := Rep.cell (p := q) r1
      have c1_s := Rep.cell (p := (.R P black vP X) :: q) r1
      have c1_sra := Rep.cell (p := (.R s red vs .nil) :: (.R P black vP X) :: q) r1
      have sib_eq := Rep.sibling_eq (p := q) r1
      refine ⟨m1, ?_, r1, a1⟩
      simp [map.fixDoubleBlack_step, map.fixDoubleBlack_red_child, isOnLeft, hasRedChild, hroot, hsr,
        d_P_s, d_P_sra, d_s_P, d_s_sra, d_sra_P, d_sra_s, t_X_P, u_X_P, t_X_s, u_X_s, t_X_sra,
        u_X_sra, t_srl_P, u_srl_P, t_srl_s, u_srl_s, t_srl_sra, u_srl_sra, t_srr_P, u_srr_P, t_srr_s,
        u_srr_s, t_srr_sra, u_srr_sra, get_color_eq c0_P, get_val_eq c0_P, get_l_eq c0_P,
        get_r_eq c0_P, get_parent_eq c0_P, get_color_eq c0_s, get_val_eq c0_s, get_l_eq c0_s,
        get_r_eq c0_s, get_parent_eq c0_s, get_color_eq c0_sra, get_val_eq c0_sra, get_l_eq c0_sra,
        get_r_eq c0_sra, get_parent_eq c0_sra, get_color_eq c1_P, get_val_eq c1_P, get_l_eq c1_P,
        get_r_eq c1_P, get_parent_eq c1_P, get_color_eq c1_s, get_val_eq c1_s, get_l_eq c1_s,
        get_r_eq c1_s, get_parent_eq c1_s, get_color_eq c1_sra, get_val_eq c1_sra, get_l_eq c1_sra,
        get_r_eq c1_sra, get_parent_eq c1_sra, e1, sib_eq]
  | node sla csl vsl sll slr =>
    simp only [tree.color] at hsl
    cases sr with
    | nil =>
      have hn := h.nodup
      simp only [nodup_fill_iff, nodup_paddrs_L, nodup_paddrs_R, disjoint_paddrs_L,
        disjoint_paddrs_R, mem_paddrs_L, mem_paddrs_R, tree.addrs_node, tree.addrs_nil,
        List.nodup_append, List.nodup_cons, List.mem_append, List.mem_cons,
        List.disjoint_append_left, List.disjoint_append_right, List.disjoint_cons_left,
        List.disjoint_cons_right, not_or, paddrs_nil, List.disjoint_nil_left,
        List.disjoint_nil_right, List.not_mem_nil, List.nil_append, List.nodup_nil,
        not_false_eq_true, true_and, and_true] at hn
      casesm* _ ∧ _
      have d_P_sla : P ≠ sla := by first | assumption | exact Ne.symm (by assumption)
      have d_P_s : P ≠ s := by first | assumption | exact Ne.symm (by assumption)
      have d_sla_P : sla ≠ P := by first | assumption | exact Ne.symm (by assumption)
      have d_sla_s : sla ≠ s := by first | assumption | exact Ne.symm (by assumption)
      have d_s_P : s ≠ P := by first | assumption | exact Ne.symm (by assumption)
      have d_s_sla : s ≠ sla := by first | assumption | exact Ne.symm (by assumption)
      have t_X_P : X.top ≠ some P := tree.top_ne_of_not_mem (by assumption)
      have u_X_P : some P ≠ X.top := tree.ne_top_of_not_mem (by assumption)
      have t_X_sla : X.top ≠ some sla := tree.top_ne_of_not_mem (by assumption)
      have u_X_sla : some sla ≠ X.top := tree.ne_top_of_not_mem (by assumption)
      have t_X_s : X.top ≠ some s := tree.top_ne_of_not_mem (by assumption)
      have u_X_s : some s ≠ X.top := tree.ne_top_of_not_mem (by assumption)
      have t_sll_P : sll.top ≠ some P := tree.top_ne_of_not_mem (by assumption)
      have u_sll_P : some P ≠ sll.top := tree.ne_top_of_not_mem (by assumption)
      have t_sll_sla : sll.top ≠ some sla := tree.top_ne_of_not_mem (by assumption)
      have u_sll_sla : some sla ≠ sll.top := tree.ne_top_of_not_mem (by assumption)
      have t_sll_s : sll.top ≠ some s := tree.top_ne_of_not_mem (by assumption)
      have u_sll_s : some s ≠ sll.top := tree.ne_top_of_not_mem (by assumption)
      have t_slr_P : slr.top ≠ some P := tree.top_ne_of_not_mem (by assumption)
      have u_slr_P : some P ≠ slr.top := tree.ne_top_of_not_mem (by assumption)
      have t_slr_sla : slr.top ≠ some sla := tree.top_ne_of_not_mem (by assumption)
      have u_slr_sla : some sla ≠ slr.top := tree.ne_top_of_not_mem (by assumption)
      have t_slr_s : slr.top ≠ some s := tree.top_ne_of_not_mem (by assumption)
      have u_slr_s : some s ≠ slr.top := tree.ne_top_of_not_mem (by assumption)
      have c0_P := Rep.cell (p := q) h
      have c0_sla := Rep.cell (p := (.L s black vs .nil) :: (.R P black vP X) :: q) h
      have c0_s := Rep.cell (p := (.R P black vP X) :: q) h
      obtain ⟨m1, e1, r1, a1⟩ := Rep.set_color (p := (.R P black vP X) :: q) h red
      have c1_P := Rep.cell (p := q) r1
      have c1_sla := Rep.cell (p := (.L s red vs .nil) :: (.R P black vP X) :: q) r1
      have c1_s := Rep.cell (p := (.R P black vP X) :: q) r1
      have sib_eq := Rep.sibling_eq (p := q) r1
      refine ⟨m1, ?_, r1, a1⟩
      simp [map.fixDoubleBlack_step, map.fixDoubleBlack_red_child, isOnLeft, hasRedChild, hroot, hsl,
        d_P_sla, d_P_s, d_sla_P, d_sla_s, d_s_P, d_s_sla, t_X_P, u_X_P, t_X_sla, u_X_sla, t_X_s,
        u_X_s, t_sll_P, u_sll_P, t_sll_sla, u_sll_sla, t_sll_s, u_sll_s, t_slr_P, u_slr_P, t_slr_sla,
        u_slr_sla, t_slr_s, u_slr_s, get_color_eq c0_P, get_val_eq c0_P, get_l_eq c0_P,
        get_r_eq c0_P, get_parent_eq c0_P, get_color_eq c0_sla, get_val_eq c0_sla, get_l_eq c0_sla,
        get_r_eq c0_sla, get_parent_eq c0_sla, get_color_eq c0_s, get_val_eq c0_s, get_l_eq c0_s,
        get_r_eq c0_s, get_parent_eq c0_s, get_color_eq c1_P, get_val_eq c1_P, get_l_eq c1_P,
        get_r_eq c1_P, get_parent_eq c1_P, get_color_eq c1_sla, get_val_eq c1_sla, get_l_eq c1_sla,
        get_r_eq c1_sla, get_parent_eq c1_sla, get_color_eq c1_s, get_val_eq c1_s, get_l_eq c1_s,
        get_r_eq c1_s, get_parent_eq c1_s, e1, sib_eq]
    | node sra csr vsr srl srr =>
      simp only [tree.color] at hsr
      have hn := h.nodup
      simp only [nodup_fill_iff, nodup_paddrs_L, nodup_paddrs_R, disjoint_paddrs_L,
        disjoint_paddrs_R, mem_paddrs_L, mem_paddrs_R, tree.addrs_node, tree.addrs_nil,
        List.nodup_append, List.nodup_cons, List.mem_append, List.mem_cons,
        List.disjoint_append_left, List.disjoint_append_right, List.disjoint_cons_left,
        List.disjoint_cons_right, not_or, paddrs_nil, List.disjoint_nil_left,
        List.disjoint_nil_right, List.not_mem_nil, List.nil_append, List.nodup_nil,
        not_false_eq_true, true_and, and_true] at hn
      casesm* _ ∧ _
      have d_P_sla : P ≠ sla := by first | assumption | exact Ne.symm (by assumption)
      have d_P_s : P ≠ s := by first | assumption | exact Ne.symm (by assumption)
      have d_P_sra : P ≠ sra := by first | assumption | exact Ne.symm (by assumption)
      have d_sla_P : sla ≠ P := by first | assumption | exact Ne.symm (by assumption)
      have d_sla_s : sla ≠ s := by first | assumption | exact Ne.symm (by assumption)
      have d_sla_sra : sla ≠ sra := by first | assumption | exact Ne.symm (by assumption)
      have d_s_P : s ≠ P := by first | assumption | exact Ne.symm (by assumption)
      have d_s_sla : s ≠ sla := by first | assumption | exact Ne.symm (by assumption)
      have d_s_sra : s ≠ sra := by first | assumption | exact Ne.symm (by assumption)
      have d_sra_P : sra ≠ P := by first | assumption | exact Ne.symm (by assumption)
      have d_sra_sla : sra ≠ sla := by first | assumption | exact Ne.symm (by assumption)
      have d_sra_s : sra ≠ s := by first | assumption | exact Ne.symm (by assumption)
      have t_X_P : X.top ≠ some P := tree.top_ne_of_not_mem (by assumption)
      have u_X_P : some P ≠ X.top := tree.ne_top_of_not_mem (by assumption)
      have t_X_sla : X.top ≠ some sla := tree.top_ne_of_not_mem (by assumption)
      have u_X_sla : some sla ≠ X.top := tree.ne_top_of_not_mem (by assumption)
      have t_X_s : X.top ≠ some s := tree.top_ne_of_not_mem (by assumption)
      have u_X_s : some s ≠ X.top := tree.ne_top_of_not_mem (by assumption)
      have t_X_sra : X.top ≠ some sra := tree.top_ne_of_not_mem (by assumption)
      have u_X_sra : some sra ≠ X.top := tree.ne_top_of_not_mem (by assumption)
      have t_sll_P : sll.top ≠ some P := tree.top_ne_of_not_mem (by assumption)
      have u_sll_P : some P ≠ sll.top := tree.ne_top_of_not_mem (by assumption)
      have t_sll_sla : sll.top ≠ some sla := tree.top_ne_of_not_mem (by assumption)
      have u_sll_sla : some sla ≠ sll.top := tree.ne_top_of_not_mem (by assumption)
      have t_sll_s : sll.top ≠ some s := tree.top_ne_of_not_mem (by assumption)
      have u_sll_s : some s ≠ sll.top := tree.ne_top_of_not_mem (by assumption)
      have t_sll_sra : sll.top ≠ some sra := tree.top_ne_of_not_mem (by assumption)
      have u_sll_sra : some sra ≠ sll.top := tree.ne_top_of_not_mem (by assumption)
      have t_slr_P : slr.top ≠ some P := tree.top_ne_of_not_mem (by assumption)
      have u_slr_P : some P ≠ slr.top := tree.ne_top_of_not_mem (by assumption)
      have t_slr_sla : slr.top ≠ some sla := tree.top_ne_of_not_mem (by assumption)
      have u_slr_sla : some sla ≠ slr.top := tree.ne_top_of_not_mem (by assumption)
      have t_slr_s : slr.top ≠ some s := tree.top_ne_of_not_mem (by assumption)
      have u_slr_s : some s ≠ slr.top := tree.ne_top_of_not_mem (by assumption)
      have t_slr_sra : slr.top ≠ some sra := tree.top_ne_of_not_mem (by assumption)
      have u_slr_sra : some sra ≠ slr.top := tree.ne_top_of_not_mem (by assumption)
      have t_srl_P : srl.top ≠ some P := tree.top_ne_of_not_mem (by assumption)
      have u_srl_P : some P ≠ srl.top := tree.ne_top_of_not_mem (by assumption)
      have t_srl_sla : srl.top ≠ some sla := tree.top_ne_of_not_mem (by assumption)
      have u_srl_sla : some sla ≠ srl.top := tree.ne_top_of_not_mem (by assumption)
      have t_srl_s : srl.top ≠ some s := tree.top_ne_of_not_mem (by assumption)
      have u_srl_s : some s ≠ srl.top := tree.ne_top_of_not_mem (by assumption)
      have t_srl_sra : srl.top ≠ some sra := tree.top_ne_of_not_mem (by assumption)
      have u_srl_sra : some sra ≠ srl.top := tree.ne_top_of_not_mem (by assumption)
      have t_srr_P : srr.top ≠ some P := tree.top_ne_of_not_mem (by assumption)
      have u_srr_P : some P ≠ srr.top := tree.ne_top_of_not_mem (by assumption)
      have t_srr_sla : srr.top ≠ some sla := tree.top_ne_of_not_mem (by assumption)
      have u_srr_sla : some sla ≠ srr.top := tree.ne_top_of_not_mem (by assumption)
      have t_srr_s : srr.top ≠ some s := tree.top_ne_of_not_mem (by assumption)
      have u_srr_s : some s ≠ srr.top := tree.ne_top_of_not_mem (by assumption)
      have t_srr_sra : srr.top ≠ some sra := tree.top_ne_of_not_mem (by assumption)
      have u_srr_sra : some sra ≠ srr.top := tree.ne_top_of_not_mem (by assumption)
      have c0_P := Rep.cell (p := q) h
      have c0_sla := Rep.cell (p := (.L s black vs (.node sra csr vsr srl srr)) :: (.R P black vP X) :: q) h
      have c0_s := Rep.cell (p := (.R P black vP X) :: q) h
      have c0_sra := Rep.cell (p := (.R s black vs (.node sla csl vsl sll slr)) :: (.R P black vP X) :: q) h
      obtain ⟨m1, e1, r1, a1⟩ := Rep.set_color (p := (.R P black vP X) :: q) h red
      have c1_P := Rep.cell (p := q) r1
      have c1_sla := Rep.cell (p := (.L s red vs (.node sra csr vsr srl srr)) :: (.R P black vP X) :: q) r1
      have c1_s := Rep.cell (p := (.R P black vP X) :: q) r1
      have c1_sra := Rep.cell (p := (.R s red vs (.node sla csl vsl sll slr)) :: (.R P black vP X) :: q) r1
      have sib_eq := Rep.sibling_eq (p := q) r1
      refine ⟨m1, ?_, r1, a1⟩
      simp [map.fixDoubleBlack_step, map.fixDoubleBlack_red_child, isOnLeft, hasRedChild, hroot, hsl, hsr,
        d_P_sla, d_P_s, d_P_sra, d_sla_P, d_sla_s, d_sla_sra, d_s_P, d_s_sla, d_s_sra, d_sra_P,
        d_sra_sla, d_sra_s, t_X_P, u_X_P, t_X_sla, u_X_sla, t_X_s, u_X_s, t_X_sra, u_X_sra, t_sll_P,
        u_sll_P, t_sll_sla, u_sll_sla, t_sll_s, u_sll_s, t_sll_sra, u_sll_sra, t_slr_P, u_slr_P,
        t_slr_sla, u_slr_sla, t_slr_s, u_slr_s, t_slr_sra, u_slr_sra, t_srl_P, u_srl_P, t_srl_sla,
        u_srl_sla, t_srl_s, u_srl_s, t_srl_sra, u_srl_sra, t_srr_P, u_srr_P, t_srr_sla, u_srr_sla,
        t_srr_s, u_srr_s, t_srr_sra, u_srr_sra, get_color_eq c0_P, get_val_eq c0_P, get_l_eq c0_P,
        get_r_eq c0_P, get_parent_eq c0_P, get_color_eq c0_sla, get_val_eq c0_sla, get_l_eq c0_sla,
        get_r_eq c0_sla, get_parent_eq c0_sla, get_color_eq c0_s, get_val_eq c0_s, get_l_eq c0_s,
        get_r_eq c0_s, get_parent_eq c0_s, get_color_eq c0_sra, get_val_eq c0_sra, get_l_eq c0_sra,
        get_r_eq c0_sra, get_parent_eq c0_sra, get_color_eq c1_P, get_val_eq c1_P, get_l_eq c1_P,
        get_r_eq c1_P, get_parent_eq c1_P, get_color_eq c1_sla, get_val_eq c1_sla, get_l_eq c1_sla,
        get_r_eq c1_sla, get_parent_eq c1_sla, get_color_eq c1_s, get_val_eq c1_s, get_l_eq c1_s,
        get_r_eq c1_s, get_parent_eq c1_s, get_color_eq c1_sra, get_val_eq c1_sra, get_l_eq c1_sra,
        get_r_eq c1_sra, get_parent_eq c1_sra, e1, sib_eq]

/-- One turn of `fixDoubleBlack`, as `fixDoubleBlack_step` runs it, at a right child whose sibling is red: after the recolouring and the rotation the same node is repaired against its new sibling. -/
theorem step_red_sibling_R {m : map K V} {q : List (frame K V)} {s P : Nat}
    {cP : color_type} {vs vP : Option (K × V)}
    {sl sr X : tree K V}
    (h : Rep m (fill q (.node P cP vP (.node s red vs sl sr) X)))
    (hroot : X.top ≠ m._root) :
    ∃ m2, map.fixDoubleBlack_step m X.top (some P) (some s) =
        some (Sum.inr (m2, X.top, some P, sr.top)) ∧
      Rep m2 (fill q (.node s black vs sl (.node P red vP sr X))) ∧ SameAux m m2 := by
  have hn := h.nodup
  simp only [nodup_fill_iff, nodup_paddrs_L, nodup_paddrs_R, disjoint_paddrs_L,
    disjoint_paddrs_R, mem_paddrs_L, mem_paddrs_R, tree.addrs_node, tree.addrs_nil,
    List.nodup_append, List.nodup_cons, List.mem_append, List.mem_cons,
    List.disjoint_append_left, List.disjoint_append_right, List.disjoint_cons_left,
    List.disjoint_cons_right, not_or, paddrs_nil, List.disjoint_nil_left,
    List.disjoint_nil_right, List.not_mem_nil, List.nil_append, List.nodup_nil,
    not_false_eq_true, true_and, and_true] at hn
  casesm* _ ∧ _
  have d_s_P : s ≠ P := by first | assumption | exact Ne.symm (by assumption)
  have d_P_s : P ≠ s := by first | assumption | exact Ne.symm (by assumption)
  have t_sl_s : sl.top ≠ some s := tree.top_ne_of_not_mem (by assumption)
  have u_sl_s : some s ≠ sl.top := tree.ne_top_of_not_mem (by assumption)
  have t_sl_P : sl.top ≠ some P := tree.top_ne_of_not_mem (by assumption)
  have u_sl_P : some P ≠ sl.top := tree.ne_top_of_not_mem (by assumption)
  have t_sr_s : sr.top ≠ some s := tree.top_ne_of_not_mem (by assumption)
  have u_sr_s : some s ≠ sr.top := tree.ne_top_of_not_mem (by assumption)
  have t_sr_P : sr.top ≠ some P := tree.top_ne_of_not_mem (by assumption)
  have u_sr_P : some P ≠ sr.top := tree.ne_top_of_not_mem (by assumption)
  have t_X_s : X.top ≠ some s := tree.top_ne_of_not_mem (by assumption)
  have u_X_s : some s ≠ X.top := tree.ne_top_of_not_mem (by assumption)
  have t_X_P : X.top ≠ some P := tree.top_ne_of_not_mem (by assumption)
  have u_X_P : some P ≠ X.top := tree.ne_top_of_not_mem (by assumption)
  have c0_s := Rep.cell (p := (.L P cP vP X) :: q) h
  have c0_P := Rep.cell (p := q) h
  obtain ⟨m1, e1, r1, a1⟩ := Rep.set_color (p := q) h red
  have c1_s := Rep.cell (p := (.L P red vP X) :: q) r1
  have c1_P := Rep.cell (p := q) r1
  obtain ⟨m2, e2, r2, a2⟩ := Rep.set_color (p := (.L P red vP X) :: q) r1 black
  have c2_s := Rep.cell (p := (.L P red vP X) :: q) r2
  have c2_P := Rep.cell (p := q) r2
  obtain ⟨m3, e3, r3, a3⟩ := r_rotate_spec (p := q) r2
  have c3_s := Rep.cell (p := q) r3
  have c3_P := Rep.cell (p := (.R s black vs sl) :: q) r3
  refine ⟨m3, ?_, r3, a1.trans (a2.trans a3)⟩
  simp [map.fixDoubleBlack_step, map.fixDoubleBlack_red_child, isOnLeft, hasRedChild, hroot, d_s_P,
    d_P_s, t_sl_s, u_sl_s, t_sl_P, u_sl_P, t_sr_s, u_sr_s, t_sr_P, u_sr_P, t_X_s, u_X_s, t_X_P,
    u_X_P, get_color_eq c0_s, get_val_eq c0_s, get_l_eq c0_s, get_r_eq c0_s, get_parent_eq c0_s,
    get_color_eq c0_P, get_val_eq c0_P, get_l_eq c0_P, get_r_eq c0_P, get_parent_eq c0_P,
    get_color_eq c1_s, get_val_eq c1_s, get_l_eq c1_s, get_r_eq c1_s, get_parent_eq c1_s,
    get_color_eq c1_P, get_val_eq c1_P, get_l_eq c1_P, get_r_eq c1_P, get_parent_eq c1_P,
    get_color_eq c2_s, get_val_eq c2_s, get_l_eq c2_s, get_r_eq c2_s, get_parent_eq c2_s,
    get_color_eq c2_P, get_val_eq c2_P, get_l_eq c2_P, get_r_eq c2_P, get_parent_eq c2_P,
    get_color_eq c3_s, get_val_eq c3_s, get_l_eq c3_s, get_r_eq c3_s, get_parent_eq c3_s,
    get_color_eq c3_P, get_val_eq c3_P, get_l_eq c3_P, get_r_eq c3_P, get_parent_eq c3_P, e1, e2,
    e3]

/-- One turn of `fixDoubleBlack`, as `fixDoubleBlack_step` runs it, at a right child whose black sibling has a red left child. -/
theorem step_red_left_R {m : map K V} {q : List (frame K V)} {a s P : Nat}
    {cP : color_type} {vs vP : Option (K × V)} {xa : K × V}
    {A B sr X : tree K V}
    (h : Rep m (fill q (.node P cP vP (.node s black vs (.node a red (some xa) A B) sr) X)))
    (hroot : X.top ≠ m._root) :
    ∃ m2, map.fixDoubleBlack_step m X.top (some P) (some s) =
        some (Sum.inl m2) ∧
      Rep m2 (fill q (.node s cP vs (.node a black (some xa) A B) (.node P black vP sr X))) ∧ SameAux m m2 := by
  have hn := h.nodup
  simp only [nodup_fill_iff, nodup_paddrs_L, nodup_paddrs_R, disjoint_paddrs_L,
    disjoint_paddrs_R, mem_paddrs_L, mem_paddrs_R, tree.addrs_node, tree.addrs_nil,
    List.nodup_append, List.nodup_cons, List.mem_append, List.mem_cons,
    List.disjoint_append_left, List.disjoint_append_right, List.disjoint_cons_left,
    List.disjoint_cons_right, not_or, paddrs_nil, List.disjoint_nil_left,
    List.disjoint_nil_right, List.not_mem_nil, List.nil_append, List.nodup_nil,
    not_false_eq_true, true_and, and_true] at hn
  casesm* _ ∧ _
  have d_a_s : a ≠ s := by first | assumption | exact Ne.symm (by assumption)
  have d_a_P : a ≠ P := by first | assumption | exact Ne.symm (by assumption)
  have d_s_a : s ≠ a := by first | assumption | exact Ne.symm (by assumption)
  have d_s_P : s ≠ P := by first | assumption | exact Ne.symm (by assumption)
  have d_P_a : P ≠ a := by first | assumption | exact Ne.symm (by assumption)
  have d_P_s : P ≠ s := by first | assumption | exact Ne.symm (by assumption)
  have t_A_a : A.top ≠ some a := tree.top_ne_of_not_mem (by assumption)
  have u_A_a : some a ≠ A.top := tree.ne_top_of_not_mem (by assumption)
  have t_A_s : A.top ≠ some s := tree.top_ne_of_not_mem (by assumption)
  have u_A_s : some s ≠ A.top := tree.ne_top_of_not_mem (by assumption)
  have t_A_P : A.top ≠ some P := tree.top_ne_of_not_mem (by assumption)
  have u_A_P : some P ≠ A.top := tree.ne_top_of_not_mem (by assumption)
  have t_B_a : B.top ≠ some a := tree.top_ne_of_not_mem (by assumption)
  have u_B_a : some a ≠ B.top := tree.ne_top_of_not_mem (by assumption)
  have t_B_s : B.top ≠ some s := tree.top_ne_of_not_mem (by assumption)
  have u_B_s : some s ≠ B.top := tree.ne_top_of_not_mem (by assumption)
  have t_B_P : B.top ≠ some P := tree.top_ne_of_not_mem (by assumption)
  have u_B_P : some P ≠ B.top := tree.ne_top_of_not_mem (by assumption)
  have t_sr_a : sr.top ≠ some a := tree.top_ne_of_not_mem (by assumption)
  have u_sr_a : some a ≠ sr.top := tree.ne_top_of_not_mem (by assumption)
  have t_sr_s : sr.top ≠ some s := tree.top_ne_of_not_mem (by assumption)
  have u_sr_s : some s ≠ sr.top := tree.ne_top_of_not_mem (by assumption)
  have t_sr_P : sr.top ≠ some P := tree.top_ne_of_not_mem (by assumption)
  have u_sr_P : some P ≠ sr.top := tree.ne_top_of_not_mem (by assumption)
  have t_X_a : X.top ≠ some a := tree.top_ne_of_not_mem (by assumption)
  have u_X_a : some a ≠ X.top := tree.ne_top_of_not_mem (by assumption)
  have t_X_s : X.top ≠ some s := tree.top_ne_of_not_mem (by assumption)
  have u_X_s : some s ≠ X.top := tree.ne_top_of_not_mem (by assumption)
  have t_X_P : X.top ≠ some P := tree.top_ne_of_not_mem (by assumption)
  have u_X_P : some P ≠ X.top := tree.ne_top_of_not_mem (by assumption)
  have c0_a := Rep.cell (p := (.L s black vs sr) :: (.L P cP vP X) :: q) h
  have c0_s := Rep.cell (p := (.L P cP vP X) :: q) h
  have c0_P := Rep.cell (p := q) h
  obtain ⟨m1, e1, r1, a1⟩ := Rep.set_color (p := (.L s black vs sr) :: (.L P cP vP X) :: q) h black
  have c1_a := Rep.cell (p := (.L s black vs sr) :: (.L P cP vP X) :: q) r1
  have c1_s := Rep.cell (p := (.L P cP vP X) :: q) r1
  have c1_P := Rep.cell (p := q) r1
  obtain ⟨m2, e2, r2, a2⟩ := Rep.set_color (p := (.L P cP vP X) :: q) r1 cP
  have c2_a := Rep.cell (p := (.L s cP vs sr) :: (.L P cP vP X) :: q) r2
  have c2_s := Rep.cell (p := (.L P cP vP X) :: q) r2
  have c2_P := Rep.cell (p := q) r2
  obtain ⟨m3, e3, r3, a3⟩ := r_rotate_spec (p := q) r2
  have c3_a := Rep.cell (p := (.L s cP vs (.node P cP vP sr X)) :: q) r3
  have c3_s := Rep.cell (p := q) r3
  have c3_P := Rep.cell (p := (.R s cP vs (.node a black (some xa) A B)) :: q) r3
  obtain ⟨m4, e4, r4, a4⟩ := Rep.set_color (p := (.R s cP vs (.node a black (some xa) A B)) :: q) r3 black
  have c4_a := Rep.cell (p := (.L s cP vs (.node P black vP sr X)) :: q) r4
  have c4_s := Rep.cell (p := q) r4
  have c4_P := Rep.cell (p := (.R s cP vs (.node a black (some xa) A B)) :: q) r4
  refine ⟨m4, ?_, r4, a1.trans (a2.trans (a3.trans a4))⟩
  simp [map.fixDoubleBlack_step, map.fixDoubleBlack_red_child, isOnLeft, hasRedChild, hroot, d_a_s,
    d_a_P, d_s_a, d_s_P, d_P_a, d_P_s, t_A_a, u_A_a, t_A_s, u_A_s, t_A_P, u_A_P, t_B_a, u_B_a,
    t_B_s, u_B_s, t_B_P, u_B_P, t_sr_a, u_sr_a, t_sr_s, u_sr_s, t_sr_P, u_sr_P, t_X_a, u_X_a,
    t_X_s, u_X_s, t_X_P, u_X_P, get_color_eq c0_a, get_val_eq c0_a, get_l_eq c0_a, get_r_eq c0_a,
    get_parent_eq c0_a, get_color_eq c0_s, get_val_eq c0_s, get_l_eq c0_s, get_r_eq c0_s,
    get_parent_eq c0_s, get_color_eq c0_P, get_val_eq c0_P, get_l_eq c0_P, get_r_eq c0_P,
    get_parent_eq c0_P, get_color_eq c1_a, get_val_eq c1_a, get_l_eq c1_a, get_r_eq c1_a,
    get_parent_eq c1_a, get_color_eq c1_s, get_val_eq c1_s, get_l_eq c1_s, get_r_eq c1_s,
    get_parent_eq c1_s, get_color_eq c1_P, get_val_eq c1_P, get_l_eq c1_P, get_r_eq c1_P,
    get_parent_eq c1_P, get_color_eq c2_a, get_val_eq c2_a, get_l_eq c2_a, get_r_eq c2_a,
    get_parent_eq c2_a, get_color_eq c2_s, get_val_eq c2_s, get_l_eq c2_s, get_r_eq c2_s,
    get_parent_eq c2_s, get_color_eq c2_P, get_val_eq c2_P, get_l_eq c2_P, get_r_eq c2_P,
    get_parent_eq c2_P, get_color_eq c3_a, get_val_eq c3_a, get_l_eq c3_a, get_r_eq c3_a,
    get_parent_eq c3_a, get_color_eq c3_s, get_val_eq c3_s, get_l_eq c3_s, get_r_eq c3_s,
    get_parent_eq c3_s, get_color_eq c3_P, get_val_eq c3_P, get_l_eq c3_P, get_r_eq c3_P,
    get_parent_eq c3_P, get_color_eq c4_a, get_val_eq c4_a, get_l_eq c4_a, get_r_eq c4_a,
    get_parent_eq c4_a, get_color_eq c4_s, get_val_eq c4_s, get_l_eq c4_s, get_r_eq c4_s,
    get_parent_eq c4_s, get_color_eq c4_P, get_val_eq c4_P, get_l_eq c4_P, get_r_eq c4_P,
    get_parent_eq c4_P, e1, e2, e3, e4]

/-- One turn of `fixDoubleBlack`, as `fixDoubleBlack_step` runs it, at a right child whose black sibling has a red right child only. -/
theorem step_red_right_R {m : map K V} {q : List (frame K V)} {s b P : Nat}
    {cP : color_type} {vs vb vP : Option (K × V)}
    {sl C D X : tree K V}
    (h : Rep m (fill q (.node P cP vP (.node s black vs sl (.node b red vb C D)) X)))
    (hroot : X.top ≠ m._root)
    (hsl : sl.color ≠ red) :
    ∃ m2, map.fixDoubleBlack_step m X.top (some P) (some s) =
        some (Sum.inl m2) ∧
      Rep m2 (fill q (.node b cP vb (.node s black vs sl C) (.node P black vP D X))) ∧ SameAux m m2 := by
  cases sl with
  | nil =>
    have hn := h.nodup
    simp only [nodup_fill_iff, nodup_paddrs_L, nodup_paddrs_R, disjoint_paddrs_L,
      disjoint_paddrs_R, mem_paddrs_L, mem_paddrs_R, tree.addrs_node, tree.addrs_nil,
      List.nodup_append, List.nodup_cons, List.mem_append, List.mem_cons,
      List.disjoint_append_left, List.disjoint_append_right, List.disjoint_cons_left,
      List.disjoint_cons_right, not_or, paddrs_nil, List.disjoint_nil_left,
      List.disjoint_nil_right, List.not_mem_nil, List.nil_append, List.nodup_nil,
      not_false_eq_true, true_and, and_true] at hn
    casesm* _ ∧ _
    have d_s_b : s ≠ b := by first | assumption | exact Ne.symm (by assumption)
    have d_s_P : s ≠ P := by first | assumption | exact Ne.symm (by assumption)
    have d_b_s : b ≠ s := by first | assumption | exact Ne.symm (by assumption)
    have d_b_P : b ≠ P := by first | assumption | exact Ne.symm (by assumption)
    have d_P_s : P ≠ s := by first | assumption | exact Ne.symm (by assumption)
    have d_P_b : P ≠ b := by first | assumption | exact Ne.symm (by assumption)
    have t_C_s : C.top ≠ some s := tree.top_ne_of_not_mem (by assumption)
    have u_C_s : some s ≠ C.top := tree.ne_top_of_not_mem (by assumption)
    have t_C_b : C.top ≠ some b := tree.top_ne_of_not_mem (by assumption)
    have u_C_b : some b ≠ C.top := tree.ne_top_of_not_mem (by assumption)
    have t_C_P : C.top ≠ some P := tree.top_ne_of_not_mem (by assumption)
    have u_C_P : some P ≠ C.top := tree.ne_top_of_not_mem (by assumption)
    have t_D_s : D.top ≠ some s := tree.top_ne_of_not_mem (by assumption)
    have u_D_s : some s ≠ D.top := tree.ne_top_of_not_mem (by assumption)
    have t_D_b : D.top ≠ some b := tree.top_ne_of_not_mem (by assumption)
    have u_D_b : some b ≠ D.top := tree.ne_top_of_not_mem (by assumption)
    have t_D_P : D.top ≠ some P := tree.top_ne_of_not_mem (by assumption)
    have u_D_P : some P ≠ D.top := tree.ne_top_of_not_mem (by assumption)
    have t_X_s : X.top ≠ some s := tree.top_ne_of_not_mem (by assumption)
    have u_X_s : some s ≠ X.top := tree.ne_top_of_not_mem (by assumption)
    have t_X_b : X.top ≠ some b := tree.top_ne_of_not_mem (by assumption)
    have u_X_b : some b ≠ X.top := tree.ne_top_of_not_mem (by assumption)
    have t_X_P : X.top ≠ some P := tree.top_ne_of_not_mem (by assumption)
    have u_X_P : some P ≠ X.top := tree.ne_top_of_not_mem (by assumption)
    have c0_s := Rep.cell (p := (.L P cP vP X) :: q) h
    have c0_b := Rep.cell (p := (.R s black vs .nil) :: (.L P cP vP X) :: q) h
    have c0_P := Rep.cell (p := q) h
    obtain ⟨m1, e1, r1, a1⟩ := Rep.set_color (p := (.R s black vs .nil) :: (.L P cP vP X) :: q) h cP
    have c1_s := Rep.cell (p := (.L P cP vP X) :: q) r1
    have c1_b := Rep.cell (p := (.R s black vs .nil) :: (.L P cP vP X) :: q) r1
    have c1_P := Rep.cell (p := q) r1
    obtain ⟨m2, e2, r2, a2⟩ := l_rotate_spec (p := (.L P cP vP X) :: q) r1
    have c2_s := Rep.cell (p := (.L b cP vb D) :: (.L P cP vP X) :: q) r2
    have c2_b := Rep.cell (p := (.L P cP vP X) :: q) r2
    have c2_P := Rep.cell (p := q) r2
    obtain ⟨m3, e3, r3, a3⟩ := r_rotate_spec (p := q) r2
    have c3_s := Rep.cell (p := (.L b cP vb (.node P cP vP D X)) :: q) r3
    have c3_b := Rep.cell (p := q) r3
    have c3_P := Rep.cell (p := (.R b cP vb (.node s black vs .nil C)) :: q) r3
    obtain ⟨m4, e4, r4, a4⟩ := Rep.set_color (p := (.R b cP vb (.node s black vs .nil C)) :: q) r3 black
    have c4_s := Rep.cell (p := (.L b cP vb (.node P black vP D X)) :: q) r4
    have c4_b := Rep.cell (p := q) r4
    have c4_P := Rep.cell (p := (.R b cP vb (.node s black vs .nil C)) :: q) r4
    refine ⟨m4, ?_, r4, a1.trans (a2.trans (a3.trans a4))⟩
    simp [map.fixDoubleBlack_step, map.fixDoubleBlack_red_child, isOnLeft, hasRedChild, hroot, d_s_b,
      d_s_P, d_b_s, d_b_P, d_P_s, d_P_b, t_C_s, u_C_s, t_C_b, u_C_b, t_C_P, u_C_P, t_D_s, u_D_s,
      t_D_b, u_D_b, t_D_P, u_D_P, t_X_s, u_X_s, t_X_b, u_X_b, t_X_P, u_X_P, get_color_eq c0_s,
      get_val_eq c0_s, get_l_eq c0_s, get_r_eq c0_s, get_parent_eq c0_s, get_color_eq c0_b,
      get_val_eq c0_b, get_l_eq c0_b, get_r_eq c0_b, get_parent_eq c0_b, get_color_eq c0_P,
      get_val_eq c0_P, get_l_eq c0_P, get_r_eq c0_P, get_parent_eq c0_P, get_color_eq c1_s,
      get_val_eq c1_s, get_l_eq c1_s, get_r_eq c1_s, get_parent_eq c1_s, get_color_eq c1_b,
      get_val_eq c1_b, get_l_eq c1_b, get_r_eq c1_b, get_parent_eq c1_b, get_color_eq c1_P,
      get_val_eq c1_P, get_l_eq c1_P, get_r_eq c1_P, get_parent_eq c1_P, get_color_eq c2_s,
      get_val_eq c2_s, get_l_eq c2_s, get_r_eq c2_s, get_parent_eq c2_s, get_color_eq c2_b,
      get_val_eq c2_b, get_l_eq c2_b, get_r_eq c2_b, get_parent_eq c2_b, get_color_eq c2_P,
      get_val_eq c2_P, get_l_eq c2_P, get_r_eq c2_P, get_parent_eq c2_P, get_color_eq c3_s,
      get_val_eq c3_s, get_l_eq c3_s, get_r_eq c3_s, get_parent_eq c3_s, get_color_eq c3_b,
      get_val_eq c3_b, get_l_eq c3_b, get_r_eq c3_b, get_parent_eq c3_b, get_color_eq c3_P,
      get_val_eq c3_P, get_l_eq c3_P, get_r_eq c3_P, get_parent_eq c3_P, get_color_eq c4_s,
      get_val_eq c4_s, get_l_eq c4_s, get_r_eq c4_s, get_parent_eq c4_s, get_color_eq c4_b,
      get_val_eq c4_b, get_l_eq c4_b, get_r_eq c4_b, get_parent_eq c4_b, get_color_eq c4_P,
      get_val_eq c4_P, get_l_eq c4_P, get_r_eq c4_P, get_parent_eq c4_P, e1, e2, e3, e4]
  | node sla csl vsl sll slr =>
    simp only [tree.color] at hsl
    have hn := h.nodup
    simp only [nodup_fill_iff, nodup_paddrs_L, nodup_paddrs_R, disjoint_paddrs_L,
      disjoint_paddrs_R, mem_paddrs_L, mem_paddrs_R, tree.addrs_node, tree.addrs_nil,
      List.nodup_append, List.nodup_cons, List.mem_append, List.mem_cons,
      List.disjoint_append_left, List.disjoint_append_right, List.disjoint_cons_left,
      List.disjoint_cons_right, not_or, paddrs_nil, List.disjoint_nil_left,
      List.disjoint_nil_right, List.not_mem_nil, List.nil_append, List.nodup_nil,
      not_false_eq_true, true_and, and_true] at hn
    casesm* _ ∧ _
    have d_sla_s : sla ≠ s := by first | assumption | exact Ne.symm (by assumption)
    have d_sla_b : sla ≠ b := by first | assumption | exact Ne.symm (by assumption)
    have d_sla_P : sla ≠ P := by first | assumption | exact Ne.symm (by assumption)
    have d_s_sla : s ≠ sla := by first | assumption | exact Ne.symm (by assumption)
    have d_s_b : s ≠ b := by first | assumption | exact Ne.symm (by assumption)
    have d_s_P : s ≠ P := by first | assumption | exact Ne.symm (by assumption)
    have d_b_sla : b ≠ sla := by first | assumption | exact Ne.symm (by assumption)
    have d_b_s : b ≠ s := by first | assumption | exact Ne.symm (by assumption)
    have d_b_P : b ≠ P := by first | assumption | exact Ne.symm (by assumption)
    have d_P_sla : P ≠ sla := by first | assumption | exact Ne.symm (by assumption)
    have d_P_s : P ≠ s := by first | assumption | exact Ne.symm (by assumption)
    have d_P_b : P ≠ b := by first | assumption | exact Ne.symm (by assumption)
    have t_sll_sla : sll.top ≠ some sla := tree.top_ne_of_not_mem (by assumption)
    have u_sll_sla : some sla ≠ sll.top := tree.ne_top_of_not_mem (by assumption)
    have t_sll_s : sll.top ≠ some s := tree.top_ne_of_not_mem (by assumption)
    have u_sll_s : some s ≠ sll.top := tree.ne_top_of_not_mem (by assumption)
    have t_sll_b : sll.top ≠ some b := tree.top_ne_of_not_mem (by assumption)
    have u_sll_b : some b ≠ sll.top := tree.ne_top_of_not_mem (by assumption)
    have t_sll_P : sll.top ≠ some P := tree.top_ne_of_not_mem (by assumption)
    have u_sll_P : some P ≠ sll.top := tree.ne_top_of_not_mem (by assumption)
    have t_slr_sla : slr.top ≠ some sla := tree.top_ne_of_not_mem (by assumption)
    have u_slr_sla : some sla ≠ slr.top := tree.ne_top_of_not_mem (by assumption)
    have t_slr_s : slr.top ≠ some s := tree.top_ne_of_not_mem (by assumption)
    have u_slr_s : some s ≠ slr.top := tree.ne_top_of_not_mem (by assumption)
    have t_slr_b : slr.top ≠ some b := tree.top_ne_of_not_mem (by assumption)
    have u_slr_b : some b ≠ slr.top := tree.ne_top_of_not_mem (by assumption)
    have t_slr_P : slr.top ≠ some P := tree.top_ne_of_not_mem (by assumption)
    have u_slr_P : some P ≠ slr.top := tree.ne_top_of_not_mem (by assumption)
    have t_C_sla : C.top ≠ some sla := tree.top_ne_of_not_mem (by assumption)
    have u_C_sla : some sla ≠ C.top := tree.ne_top_of_not_mem (by assumption)
    have t_C_s : C.top ≠ some s := tree.top_ne_of_not_mem (by assumption)
    have u_C_s : some s ≠ C.top := tree.ne_top_of_not_mem (by assumption)
    have t_C_b : C.top ≠ some b := tree.top_ne_of_not_mem (by assumption)
    have u_C_b : some b ≠ C.top := tree.ne_top_of_not_mem (by assumption)
    have t_C_P : C.top ≠ some P := tree.top_ne_of_not_mem (by assumption)
    have u_C_P : some P ≠ C.top := tree.ne_top_of_not_mem (by assumption)
    have t_D_sla : D.top ≠ some sla := tree.top_ne_of_not_mem (by assumption)
    have u_D_sla : some sla ≠ D.top := tree.ne_top_of_not_mem (by assumption)
    have t_D_s : D.top ≠ some s := tree.top_ne_of_not_mem (by assumption)
    have u_D_s : some s ≠ D.top := tree.ne_top_of_not_mem (by assumption)
    have t_D_b : D.top ≠ some b := tree.top_ne_of_not_mem (by assumption)
    have u_D_b : some b ≠ D.top := tree.ne_top_of_not_mem (by assumption)
    have t_D_P : D.top ≠ some P := tree.top_ne_of_not_mem (by assumption)
    have u_D_P : some P ≠ D.top := tree.ne_top_of_not_mem (by assumption)
    have t_X_sla : X.top ≠ some sla := tree.top_ne_of_not_mem (by assumption)
    have u_X_sla : some sla ≠ X.top := tree.ne_top_of_not_mem (by assumption)
    have t_X_s : X.top ≠ some s := tree.top_ne_of_not_mem (by assumption)
    have u_X_s : some s ≠ X.top := tree.ne_top_of_not_mem (by assumption)
    have t_X_b : X.top ≠ some b := tree.top_ne_of_not_mem (by assumption)
    have u_X_b : some b ≠ X.top := tree.ne_top_of_not_mem (by assumption)
    have t_X_P : X.top ≠ some P := tree.top_ne_of_not_mem (by assumption)
    have u_X_P : some P ≠ X.top := tree.ne_top_of_not_mem (by assumption)
    have c0_sla := Rep.cell (p := (.L s black vs (.node b red vb C D)) :: (.L P cP vP X) :: q) h
    have c0_s := Rep.cell (p := (.L P cP vP X) :: q) h
    have c0_b := Rep.cell (p := (.R s black vs (.node sla csl vsl sll slr)) :: (.L P cP vP X) :: q) h
    have c0_P := Rep.cell (p := q) h
    obtain ⟨m1, e1, r1, a1⟩ := Rep.set_color (p := (.R s black vs (.node sla csl vsl sll slr)) :: (.L P cP vP X) :: q) h cP
    have c1_sla := Rep.cell (p := (.L s black vs (.node b cP vb C D)) :: (.L P cP vP X) :: q) r1
    have c1_s := Rep.cell (p := (.L P cP vP X) :: q) r1
    have c1_b := Rep.cell (p := (.R s black vs (.node sla csl vsl sll slr)) :: (.L P cP vP X) :: q) r1
    have c1_P := Rep.cell (p := q) r1
    obtain ⟨m2, e2, r2, a2⟩ := l_rotate_spec (p := (.L P cP vP X) :: q) r1
    have c2_sla := Rep.cell (p := (.L s black vs C) :: (.L b cP vb D) :: (.L P cP vP X) :: q) r2
    have c2_s := Rep.cell (p := (.L b cP vb D) :: (.L P cP vP X) :: q) r2
    have c2_b := Rep.cell (p := (.L P cP vP X) :: q) r2
    have c2_P := Rep.cell (p := q) r2
    obtain ⟨m3, e3, r3, a3⟩ := r_rotate_spec (p := q) r2
    have c3_sla := Rep.cell (p := (.L s black vs C) :: (.L b cP vb (.node P cP vP D X)) :: q) r3
    have c3_s := Rep.cell (p := (.L b cP vb (.node P cP vP D X)) :: q) r3
    have c3_b := Rep.cell (p := q) r3
    have c3_P := Rep.cell (p := (.R b cP vb (.node s black vs (.node sla csl vsl sll slr) C)) :: q) r3
    obtain ⟨m4, e4, r4, a4⟩ := Rep.set_color (p := (.R b cP vb (.node s black vs (.node sla csl vsl sll slr) C)) :: q) r3 black
    have c4_sla := Rep.cell (p := (.L s black vs C) :: (.L b cP vb (.node P black vP D X)) :: q) r4
    have c4_s := Rep.cell (p := (.L b cP vb (.node P black vP D X)) :: q) r4
    have c4_b := Rep.cell (p := q) r4
    have c4_P := Rep.cell (p := (.R b cP vb (.node s black vs (.node sla csl vsl sll slr) C)) :: q) r4
    refine ⟨m4, ?_, r4, a1.trans (a2.trans (a3.trans a4))⟩
    simp [map.fixDoubleBlack_step, map.fixDoubleBlack_red_child, isOnLeft, hasRedChild, hroot, hsl,
      d_sla_s, d_sla_b, d_sla_P, d_s_sla, d_s_b, d_s_P, d_b_sla, d_b_s, d_b_P, d_P_sla, d_P_s,
      d_P_b, t_sll_sla, u_sll_sla, t_sll_s, u_sll_s, t_sll_b, u_sll_b, t_sll_P, u_sll_P, t_slr_sla,
      u_slr_sla, t_slr_s, u_slr_s, t_slr_b, u_slr_b, t_slr_P, u_slr_P, t_C_sla, u_C_sla, t_C_s,
      u_C_s, t_C_b, u_C_b, t_C_P, u_C_P, t_D_sla, u_D_sla, t_D_s, u_D_s, t_D_b, u_D_b, t_D_P,
      u_D_P, t_X_sla, u_X_sla, t_X_s, u_X_s, t_X_b, u_X_b, t_X_P, u_X_P, get_color_eq c0_sla,
      get_val_eq c0_sla, get_l_eq c0_sla, get_r_eq c0_sla, get_parent_eq c0_sla, get_color_eq c0_s,
      get_val_eq c0_s, get_l_eq c0_s, get_r_eq c0_s, get_parent_eq c0_s, get_color_eq c0_b,
      get_val_eq c0_b, get_l_eq c0_b, get_r_eq c0_b, get_parent_eq c0_b, get_color_eq c0_P,
      get_val_eq c0_P, get_l_eq c0_P, get_r_eq c0_P, get_parent_eq c0_P, get_color_eq c1_sla,
      get_val_eq c1_sla, get_l_eq c1_sla, get_r_eq c1_sla, get_parent_eq c1_sla, get_color_eq c1_s,
      get_val_eq c1_s, get_l_eq c1_s, get_r_eq c1_s, get_parent_eq c1_s, get_color_eq c1_b,
      get_val_eq c1_b, get_l_eq c1_b, get_r_eq c1_b, get_parent_eq c1_b, get_color_eq c1_P,
      get_val_eq c1_P, get_l_eq c1_P, get_r_eq c1_P, get_parent_eq c1_P, get_color_eq c2_sla,
      get_val_eq c2_sla, get_l_eq c2_sla, get_r_eq c2_sla, get_parent_eq c2_sla, get_color_eq c2_s,
      get_val_eq c2_s, get_l_eq c2_s, get_r_eq c2_s, get_parent_eq c2_s, get_color_eq c2_b,
      get_val_eq c2_b, get_l_eq c2_b, get_r_eq c2_b, get_parent_eq c2_b, get_color_eq c2_P,
      get_val_eq c2_P, get_l_eq c2_P, get_r_eq c2_P, get_parent_eq c2_P, get_color_eq c3_sla,
      get_val_eq c3_sla, get_l_eq c3_sla, get_r_eq c3_sla, get_parent_eq c3_sla, get_color_eq c3_s,
      get_val_eq c3_s, get_l_eq c3_s, get_r_eq c3_s, get_parent_eq c3_s, get_color_eq c3_b,
      get_val_eq c3_b, get_l_eq c3_b, get_r_eq c3_b, get_parent_eq c3_b, get_color_eq c3_P,
      get_val_eq c3_P, get_l_eq c3_P, get_r_eq c3_P, get_parent_eq c3_P, get_color_eq c4_sla,
      get_val_eq c4_sla, get_l_eq c4_sla, get_r_eq c4_sla, get_parent_eq c4_sla, get_color_eq c4_s,
      get_val_eq c4_s, get_l_eq c4_s, get_r_eq c4_s, get_parent_eq c4_s, get_color_eq c4_b,
      get_val_eq c4_b, get_l_eq c4_b, get_r_eq c4_b, get_parent_eq c4_b, get_color_eq c4_P,
      get_val_eq c4_P, get_l_eq c4_P, get_r_eq c4_P, get_parent_eq c4_P, e1, e2, e3, e4]

/-- One turn of `fixDoubleBlack`, as `fixDoubleBlack_step` runs it, at a right child whose black sibling has no red child, below a red parent. -/
theorem step_black_red_parent_R {m : map K V} {q : List (frame K V)} {s P : Nat} {vs vP : Option (K × V)}
    {sl sr X : tree K V}
    (h : Rep m (fill q (.node P red vP (.node s black vs sl sr) X)))
    (hroot : X.top ≠ m._root)
    (hsl : sl.color ≠ red)
    (hsr : sr.color ≠ red) :
    ∃ m2, map.fixDoubleBlack_step m X.top (some P) (some s) =
        some (Sum.inl m2) ∧
      Rep m2 (fill q (.node P black vP (.node s red vs sl sr) X)) ∧ SameAux m m2 := by
  cases sl with
  | nil =>
    cases sr with
    | nil =>
      have hn := h.nodup
      simp only [nodup_fill_iff, nodup_paddrs_L, nodup_paddrs_R, disjoint_paddrs_L,
        disjoint_paddrs_R, mem_paddrs_L, mem_paddrs_R, tree.addrs_node, tree.addrs_nil,
        List.nodup_append, List.nodup_cons, List.mem_append, List.mem_cons,
        List.disjoint_append_left, List.disjoint_append_right, List.disjoint_cons_left,
        List.disjoint_cons_right, not_or, paddrs_nil, List.disjoint_nil_left,
        List.disjoint_nil_right, List.not_mem_nil, List.nil_append, List.nodup_nil,
        not_false_eq_true, true_and, and_true] at hn
      casesm* _ ∧ _
      have d_s_P : s ≠ P := by first | assumption | exact Ne.symm (by assumption)
      have d_P_s : P ≠ s := by first | assumption | exact Ne.symm (by assumption)
      have t_X_s : X.top ≠ some s := tree.top_ne_of_not_mem (by assumption)
      have u_X_s : some s ≠ X.top := tree.ne_top_of_not_mem (by assumption)
      have t_X_P : X.top ≠ some P := tree.top_ne_of_not_mem (by assumption)
      have u_X_P : some P ≠ X.top := tree.ne_top_of_not_mem (by assumption)
      have c0_s := Rep.cell (p := (.L P red vP X) :: q) h
      have c0_P := Rep.cell (p := q) h
      obtain ⟨m1, e1, r1, a1⟩ := Rep.set_color (p := (.L P red vP X) :: q) h red
      have c1_s := Rep.cell (p := (.L P red vP X) :: q) r1
      have c1_P := Rep.cell (p := q) r1
      obtain ⟨m2, e2, r2, a2⟩ := Rep.set_color (p := q) r1 black
      have c2_s := Rep.cell (p := (.L P black vP X) :: q) r2
      have c2_P := Rep.cell (p := q) r2
      refine ⟨m2, ?_, r2, a1.trans a2⟩
      simp [map.fixDoubleBlack_step, map.fixDoubleBlack_red_child, isOnLeft, hasRedChild, hroot, d_s_P,
        d_P_s, t_X_s, u_X_s, t_X_P, u_X_P, get_color_eq c0_s, get_val_eq c0_s, get_l_eq c0_s,
        get_r_eq c0_s, get_parent_eq c0_s, get_color_eq c0_P, get_val_eq c0_P, get_l_eq c0_P,
        get_r_eq c0_P, get_parent_eq c0_P, get_color_eq c1_s, get_val_eq c1_s, get_l_eq c1_s,
        get_r_eq c1_s, get_parent_eq c1_s, get_color_eq c1_P, get_val_eq c1_P, get_l_eq c1_P,
        get_r_eq c1_P, get_parent_eq c1_P, get_color_eq c2_s, get_val_eq c2_s, get_l_eq c2_s,
        get_r_eq c2_s, get_parent_eq c2_s, get_color_eq c2_P, get_val_eq c2_P, get_l_eq c2_P,
        get_r_eq c2_P, get_parent_eq c2_P, e1, e2]
    | node sra csr vsr srl srr =>
      simp only [tree.color] at hsr
      have hn := h.nodup
      simp only [nodup_fill_iff, nodup_paddrs_L, nodup_paddrs_R, disjoint_paddrs_L,
        disjoint_paddrs_R, mem_paddrs_L, mem_paddrs_R, tree.addrs_node, tree.addrs_nil,
        List.nodup_append, List.nodup_cons, List.mem_append, List.mem_cons,
        List.disjoint_append_left, List.disjoint_append_right, List.disjoint_cons_left,
        List.disjoint_cons_right, not_or, paddrs_nil, List.disjoint_nil_left,
        List.disjoint_nil_right, List.not_mem_nil, List.nil_append, List.nodup_nil,
        not_false_eq_true, true_and, and_true] at hn
      casesm* _ ∧ _
      have d_s_sra : s ≠ sra := by first | assumption | exact Ne.symm (by assumption)
      have d_s_P : s ≠ P := by first | assumption | exact Ne.symm (by assumption)
      have d_sra_s : sra ≠ s := by first | assumption | exact Ne.symm (by assumption)
      have d_sra_P : sra ≠ P := by first | assumption | exact Ne.symm (by assumption)
      have d_P_s : P ≠ s := by first | assumption | exact Ne.symm (by assumption)
      have d_P_sra : P ≠ sra := by first | assumption | exact Ne.symm (by assumption)
      have t_srl_s : srl.top ≠ some s := tree.top_ne_of_not_mem (by assumption)
      have u_srl_s : some s ≠ srl.top := tree.ne_top_of_not_mem (by assumption)
      have t_srl_sra : srl.top ≠ some sra := tree.top_ne_of_not_mem (by assumption)
      have u_srl_sra : some sra ≠ srl.top := tree.ne_top_of_not_mem (by assumption)
      have t_srl_P : srl.top ≠ some P := tree.top_ne_of_not_mem (by assumption)
      have u_srl_P : some P ≠ srl.top := tree.ne_top_of_not_mem (by assumption)
      have t_srr_s : srr.top ≠ some s := tree.top_ne_of_not_mem (by assumption)
      have u_srr_s : some s ≠ srr.top := tree.ne_top_of_not_mem (by assumption)
      have t_srr_sra : srr.top ≠ some sra := tree.top_ne_of_not_mem (by assumption)
      have u_srr_sra : some sra ≠ srr.top := tree.ne_top_of_not_mem (by assumption)
      have t_srr_P : srr.top ≠ some P := tree.top_ne_of_not_mem (by assumption)
      have u_srr_P : some P ≠ srr.top := tree.ne_top_of_not_mem (by assumption)
      have t_X_s : X.top ≠ some s := tree.top_ne_of_not_mem (by assumption)
      have u_X_s : some s ≠ X.top := tree.ne_top_of_not_mem (by assumption)
      have t_X_sra : X.top ≠ some sra := tree.top_ne_of_not_mem (by assumption)
      have u_X_sra : some sra ≠ X.top := tree.ne_top_of_not_mem (by assumption)
      have t_X_P : X.top ≠ some P := tree.top_ne_of_not_mem (by assumption)
      have u_X_P : some P ≠ X.top := tree.ne_top_of_not_mem (by assumption)
      have c0_s := Rep.cell (p := (.L P red vP X) :: q) h
      have c0_sra := Rep.cell (p := (.R s black vs .nil) :: (.L P red vP X) :: q) h
      have c0_P := Rep.cell (p := q) h
      obtain ⟨m1, e1, r1, a1⟩ := Rep.set_color (p := (.L P red vP X) :: q) h red
      have c1_s := Rep.cell (p := (.L P red vP X) :: q) r1
      have c1_sra := Rep.cell (p := (.R s red vs .nil) :: (.L P red vP X) :: q) r1
      have c1_P := Rep.cell (p := q) r1
      obtain ⟨m2, e2, r2, a2⟩ := Rep.set_color (p := q) r1 black
      have c2_s := Rep.cell (p := (.L P black vP X) :: q) r2
      have c2_sra := Rep.cell (p := (.R s red vs .nil) :: (.L P black vP X) :: q) r2
      have c2_P := Rep.cell (p := q) r2
      refine ⟨m2, ?_, r2, a1.trans a2⟩
      simp [map.fixDoubleBlack_step, map.fixDoubleBlack_red_child, isOnLeft, hasRedChild, hroot, hsr,
        d_s_sra, d_s_P, d_sra_s, d_sra_P, d_P_s, d_P_sra, t_srl_s, u_srl_s, t_srl_sra, u_srl_sra,
        t_srl_P, u_srl_P, t_srr_s, u_srr_s, t_srr_sra, u_srr_sra, t_srr_P, u_srr_P, t_X_s, u_X_s,
        t_X_sra, u_X_sra, t_X_P, u_X_P, get_color_eq c0_s, get_val_eq c0_s, get_l_eq c0_s,
        get_r_eq c0_s, get_parent_eq c0_s, get_color_eq c0_sra, get_val_eq c0_sra, get_l_eq c0_sra,
        get_r_eq c0_sra, get_parent_eq c0_sra, get_color_eq c0_P, get_val_eq c0_P, get_l_eq c0_P,
        get_r_eq c0_P, get_parent_eq c0_P, get_color_eq c1_s, get_val_eq c1_s, get_l_eq c1_s,
        get_r_eq c1_s, get_parent_eq c1_s, get_color_eq c1_sra, get_val_eq c1_sra, get_l_eq c1_sra,
        get_r_eq c1_sra, get_parent_eq c1_sra, get_color_eq c1_P, get_val_eq c1_P, get_l_eq c1_P,
        get_r_eq c1_P, get_parent_eq c1_P, get_color_eq c2_s, get_val_eq c2_s, get_l_eq c2_s,
        get_r_eq c2_s, get_parent_eq c2_s, get_color_eq c2_sra, get_val_eq c2_sra, get_l_eq c2_sra,
        get_r_eq c2_sra, get_parent_eq c2_sra, get_color_eq c2_P, get_val_eq c2_P, get_l_eq c2_P,
        get_r_eq c2_P, get_parent_eq c2_P, e1, e2]
  | node sla csl vsl sll slr =>
    simp only [tree.color] at hsl
    cases sr with
    | nil =>
      have hn := h.nodup
      simp only [nodup_fill_iff, nodup_paddrs_L, nodup_paddrs_R, disjoint_paddrs_L,
        disjoint_paddrs_R, mem_paddrs_L, mem_paddrs_R, tree.addrs_node, tree.addrs_nil,
        List.nodup_append, List.nodup_cons, List.mem_append, List.mem_cons,
        List.disjoint_append_left, List.disjoint_append_right, List.disjoint_cons_left,
        List.disjoint_cons_right, not_or, paddrs_nil, List.disjoint_nil_left,
        List.disjoint_nil_right, List.not_mem_nil, List.nil_append, List.nodup_nil,
        not_false_eq_true, true_and, and_true] at hn
      casesm* _ ∧ _
      have d_sla_s : sla ≠ s := by first | assumption | exact Ne.symm (by assumption)
      have d_sla_P : sla ≠ P := by first | assumption | exact Ne.symm (by assumption)
      have d_s_sla : s ≠ sla := by first | assumption | exact Ne.symm (by assumption)
      have d_s_P : s ≠ P := by first | assumption | exact Ne.symm (by assumption)
      have d_P_sla : P ≠ sla := by first | assumption | exact Ne.symm (by assumption)
      have d_P_s : P ≠ s := by first | assumption | exact Ne.symm (by assumption)
      have t_sll_sla : sll.top ≠ some sla := tree.top_ne_of_not_mem (by assumption)
      have u_sll_sla : some sla ≠ sll.top := tree.ne_top_of_not_mem (by assumption)
      have t_sll_s : sll.top ≠ some s := tree.top_ne_of_not_mem (by assumption)
      have u_sll_s : some s ≠ sll.top := tree.ne_top_of_not_mem (by assumption)
      have t_sll_P : sll.top ≠ some P := tree.top_ne_of_not_mem (by assumption)
      have u_sll_P : some P ≠ sll.top := tree.ne_top_of_not_mem (by assumption)
      have t_slr_sla : slr.top ≠ some sla := tree.top_ne_of_not_mem (by assumption)
      have u_slr_sla : some sla ≠ slr.top := tree.ne_top_of_not_mem (by assumption)
      have t_slr_s : slr.top ≠ some s := tree.top_ne_of_not_mem (by assumption)
      have u_slr_s : some s ≠ slr.top := tree.ne_top_of_not_mem (by assumption)
      have t_slr_P : slr.top ≠ some P := tree.top_ne_of_not_mem (by assumption)
      have u_slr_P : some P ≠ slr.top := tree.ne_top_of_not_mem (by assumption)
      have t_X_sla : X.top ≠ some sla := tree.top_ne_of_not_mem (by assumption)
      have u_X_sla : some sla ≠ X.top := tree.ne_top_of_not_mem (by assumption)
      have t_X_s : X.top ≠ some s := tree.top_ne_of_not_mem (by assumption)
      have u_X_s : some s ≠ X.top := tree.ne_top_of_not_mem (by assumption)
      have t_X_P : X.top ≠ some P := tree.top_ne_of_not_mem (by assumption)
      have u_X_P : some P ≠ X.top := tree.ne_top_of_not_mem (by assumption)
      have c0_sla := Rep.cell (p := (.L s black vs .nil) :: (.L P red vP X) :: q) h
      have c0_s := Rep.cell (p := (.L P red vP X) :: q) h
      have c0_P := Rep.cell (p := q) h
      obtain ⟨m1, e1, r1, a1⟩ := Rep.set_color (p := (.L P red vP X) :: q) h red
      have c1_sla := Rep.cell (p := (.L s red vs .nil) :: (.L P red vP X) :: q) r1
      have c1_s := Rep.cell (p := (.L P red vP X) :: q) r1
      have c1_P := Rep.cell (p := q) r1
      obtain ⟨m2, e2, r2, a2⟩ := Rep.set_color (p := q) r1 black
      have c2_sla := Rep.cell (p := (.L s red vs .nil) :: (.L P black vP X) :: q) r2
      have c2_s := Rep.cell (p := (.L P black vP X) :: q) r2
      have c2_P := Rep.cell (p := q) r2
      refine ⟨m2, ?_, r2, a1.trans a2⟩
      simp [map.fixDoubleBlack_step, map.fixDoubleBlack_red_child, isOnLeft, hasRedChild, hroot, hsl,
        d_sla_s, d_sla_P, d_s_sla, d_s_P, d_P_sla, d_P_s, t_sll_sla, u_sll_sla, t_sll_s, u_sll_s,
        t_sll_P, u_sll_P, t_slr_sla, u_slr_sla, t_slr_s, u_slr_s, t_slr_P, u_slr_P, t_X_sla, u_X_sla,
        t_X_s, u_X_s, t_X_P, u_X_P, get_color_eq c0_sla, get_val_eq c0_sla, get_l_eq c0_sla,
        get_r_eq c0_sla, get_parent_eq c0_sla, get_color_eq c0_s, get_val_eq c0_s, get_l_eq c0_s,
        get_r_eq c0_s, get_parent_eq c0_s, get_color_eq c0_P, get_val_eq c0_P, get_l_eq c0_P,
        get_r_eq c0_P, get_parent_eq c0_P, get_color_eq c1_sla, get_val_eq c1_sla, get_l_eq c1_sla,
        get_r_eq c1_sla, get_parent_eq c1_sla, get_color_eq c1_s, get_val_eq c1_s, get_l_eq c1_s,
        get_r_eq c1_s, get_parent_eq c1_s, get_color_eq c1_P, get_val_eq c1_P, get_l_eq c1_P,
        get_r_eq c1_P, get_parent_eq c1_P, get_color_eq c2_sla, get_val_eq c2_sla, get_l_eq c2_sla,
        get_r_eq c2_sla, get_parent_eq c2_sla, get_color_eq c2_s, get_val_eq c2_s, get_l_eq c2_s,
        get_r_eq c2_s, get_parent_eq c2_s, get_color_eq c2_P, get_val_eq c2_P, get_l_eq c2_P,
        get_r_eq c2_P, get_parent_eq c2_P, e1, e2]
    | node sra csr vsr srl srr =>
      simp only [tree.color] at hsr
      have hn := h.nodup
      simp only [nodup_fill_iff, nodup_paddrs_L, nodup_paddrs_R, disjoint_paddrs_L,
        disjoint_paddrs_R, mem_paddrs_L, mem_paddrs_R, tree.addrs_node, tree.addrs_nil,
        List.nodup_append, List.nodup_cons, List.mem_append, List.mem_cons,
        List.disjoint_append_left, List.disjoint_append_right, List.disjoint_cons_left,
        List.disjoint_cons_right, not_or, paddrs_nil, List.disjoint_nil_left,
        List.disjoint_nil_right, List.not_mem_nil, List.nil_append, List.nodup_nil,
        not_false_eq_true, true_and, and_true] at hn
      casesm* _ ∧ _
      have d_sla_s : sla ≠ s := by first | assumption | exact Ne.symm (by assumption)
      have d_sla_sra : sla ≠ sra := by first | assumption | exact Ne.symm (by assumption)
      have d_sla_P : sla ≠ P := by first | assumption | exact Ne.symm (by assumption)
      have d_s_sla : s ≠ sla := by first | assumption | exact Ne.symm (by assumption)
      have d_s_sra : s ≠ sra := by first | assumption | exact Ne.symm (by assumption)
      have d_s_P : s ≠ P := by first | assumption | exact Ne.symm (by assumption)
      have d_sra_sla : sra ≠ sla := by first | assumption | exact Ne.symm (by assumption)
      have d_sra_s : sra ≠ s := by first | assumption | exact Ne.symm (by assumption)
      have d_sra_P : sra ≠ P := by first | assumption | exact Ne.symm (by assumption)
      have d_P_sla : P ≠ sla := by first | assumption | exact Ne.symm (by assumption)
      have d_P_s : P ≠ s := by first | assumption | exact Ne.symm (by assumption)
      have d_P_sra : P ≠ sra := by first | assumption | exact Ne.symm (by assumption)
      have t_sll_sla : sll.top ≠ some sla := tree.top_ne_of_not_mem (by assumption)
      have u_sll_sla : some sla ≠ sll.top := tree.ne_top_of_not_mem (by assumption)
      have t_sll_s : sll.top ≠ some s := tree.top_ne_of_not_mem (by assumption)
      have u_sll_s : some s ≠ sll.top := tree.ne_top_of_not_mem (by assumption)
      have t_sll_sra : sll.top ≠ some sra := tree.top_ne_of_not_mem (by assumption)
      have u_sll_sra : some sra ≠ sll.top := tree.ne_top_of_not_mem (by assumption)
      have t_sll_P : sll.top ≠ some P := tree.top_ne_of_not_mem (by assumption)
      have u_sll_P : some P ≠ sll.top := tree.ne_top_of_not_mem (by assumption)
      have t_slr_sla : slr.top ≠ some sla := tree.top_ne_of_not_mem (by assumption)
      have u_slr_sla : some sla ≠ slr.top := tree.ne_top_of_not_mem (by assumption)
      have t_slr_s : slr.top ≠ some s := tree.top_ne_of_not_mem (by assumption)
      have u_slr_s : some s ≠ slr.top := tree.ne_top_of_not_mem (by assumption)
      have t_slr_sra : slr.top ≠ some sra := tree.top_ne_of_not_mem (by assumption)
      have u_slr_sra : some sra ≠ slr.top := tree.ne_top_of_not_mem (by assumption)
      have t_slr_P : slr.top ≠ some P := tree.top_ne_of_not_mem (by assumption)
      have u_slr_P : some P ≠ slr.top := tree.ne_top_of_not_mem (by assumption)
      have t_srl_sla : srl.top ≠ some sla := tree.top_ne_of_not_mem (by assumption)
      have u_srl_sla : some sla ≠ srl.top := tree.ne_top_of_not_mem (by assumption)
      have t_srl_s : srl.top ≠ some s := tree.top_ne_of_not_mem (by assumption)
      have u_srl_s : some s ≠ srl.top := tree.ne_top_of_not_mem (by assumption)
      have t_srl_sra : srl.top ≠ some sra := tree.top_ne_of_not_mem (by assumption)
      have u_srl_sra : some sra ≠ srl.top := tree.ne_top_of_not_mem (by assumption)
      have t_srl_P : srl.top ≠ some P := tree.top_ne_of_not_mem (by assumption)
      have u_srl_P : some P ≠ srl.top := tree.ne_top_of_not_mem (by assumption)
      have t_srr_sla : srr.top ≠ some sla := tree.top_ne_of_not_mem (by assumption)
      have u_srr_sla : some sla ≠ srr.top := tree.ne_top_of_not_mem (by assumption)
      have t_srr_s : srr.top ≠ some s := tree.top_ne_of_not_mem (by assumption)
      have u_srr_s : some s ≠ srr.top := tree.ne_top_of_not_mem (by assumption)
      have t_srr_sra : srr.top ≠ some sra := tree.top_ne_of_not_mem (by assumption)
      have u_srr_sra : some sra ≠ srr.top := tree.ne_top_of_not_mem (by assumption)
      have t_srr_P : srr.top ≠ some P := tree.top_ne_of_not_mem (by assumption)
      have u_srr_P : some P ≠ srr.top := tree.ne_top_of_not_mem (by assumption)
      have t_X_sla : X.top ≠ some sla := tree.top_ne_of_not_mem (by assumption)
      have u_X_sla : some sla ≠ X.top := tree.ne_top_of_not_mem (by assumption)
      have t_X_s : X.top ≠ some s := tree.top_ne_of_not_mem (by assumption)
      have u_X_s : some s ≠ X.top := tree.ne_top_of_not_mem (by assumption)
      have t_X_sra : X.top ≠ some sra := tree.top_ne_of_not_mem (by assumption)
      have u_X_sra : some sra ≠ X.top := tree.ne_top_of_not_mem (by assumption)
      have t_X_P : X.top ≠ some P := tree.top_ne_of_not_mem (by assumption)
      have u_X_P : some P ≠ X.top := tree.ne_top_of_not_mem (by assumption)
      have c0_sla := Rep.cell (p := (.L s black vs (.node sra csr vsr srl srr)) :: (.L P red vP X) :: q) h
      have c0_s := Rep.cell (p := (.L P red vP X) :: q) h
      have c0_sra := Rep.cell (p := (.R s black vs (.node sla csl vsl sll slr)) :: (.L P red vP X) :: q) h
      have c0_P := Rep.cell (p := q) h
      obtain ⟨m1, e1, r1, a1⟩ := Rep.set_color (p := (.L P red vP X) :: q) h red
      have c1_sla := Rep.cell (p := (.L s red vs (.node sra csr vsr srl srr)) :: (.L P red vP X) :: q) r1
      have c1_s := Rep.cell (p := (.L P red vP X) :: q) r1
      have c1_sra := Rep.cell (p := (.R s red vs (.node sla csl vsl sll slr)) :: (.L P red vP X) :: q) r1
      have c1_P := Rep.cell (p := q) r1
      obtain ⟨m2, e2, r2, a2⟩ := Rep.set_color (p := q) r1 black
      have c2_sla := Rep.cell (p := (.L s red vs (.node sra csr vsr srl srr)) :: (.L P black vP X) :: q) r2
      have c2_s := Rep.cell (p := (.L P black vP X) :: q) r2
      have c2_sra := Rep.cell (p := (.R s red vs (.node sla csl vsl sll slr)) :: (.L P black vP X) :: q) r2
      have c2_P := Rep.cell (p := q) r2
      refine ⟨m2, ?_, r2, a1.trans a2⟩
      simp [map.fixDoubleBlack_step, map.fixDoubleBlack_red_child, isOnLeft, hasRedChild, hroot, hsl, hsr,
        d_sla_s, d_sla_sra, d_sla_P, d_s_sla, d_s_sra, d_s_P, d_sra_sla, d_sra_s, d_sra_P, d_P_sla,
        d_P_s, d_P_sra, t_sll_sla, u_sll_sla, t_sll_s, u_sll_s, t_sll_sra, u_sll_sra, t_sll_P,
        u_sll_P, t_slr_sla, u_slr_sla, t_slr_s, u_slr_s, t_slr_sra, u_slr_sra, t_slr_P, u_slr_P,
        t_srl_sla, u_srl_sla, t_srl_s, u_srl_s, t_srl_sra, u_srl_sra, t_srl_P, u_srl_P, t_srr_sla,
        u_srr_sla, t_srr_s, u_srr_s, t_srr_sra, u_srr_sra, t_srr_P, u_srr_P, t_X_sla, u_X_sla, t_X_s,
        u_X_s, t_X_sra, u_X_sra, t_X_P, u_X_P, get_color_eq c0_sla, get_val_eq c0_sla,
        get_l_eq c0_sla, get_r_eq c0_sla, get_parent_eq c0_sla, get_color_eq c0_s, get_val_eq c0_s,
        get_l_eq c0_s, get_r_eq c0_s, get_parent_eq c0_s, get_color_eq c0_sra, get_val_eq c0_sra,
        get_l_eq c0_sra, get_r_eq c0_sra, get_parent_eq c0_sra, get_color_eq c0_P, get_val_eq c0_P,
        get_l_eq c0_P, get_r_eq c0_P, get_parent_eq c0_P, get_color_eq c1_sla, get_val_eq c1_sla,
        get_l_eq c1_sla, get_r_eq c1_sla, get_parent_eq c1_sla, get_color_eq c1_s, get_val_eq c1_s,
        get_l_eq c1_s, get_r_eq c1_s, get_parent_eq c1_s, get_color_eq c1_sra, get_val_eq c1_sra,
        get_l_eq c1_sra, get_r_eq c1_sra, get_parent_eq c1_sra, get_color_eq c1_P, get_val_eq c1_P,
        get_l_eq c1_P, get_r_eq c1_P, get_parent_eq c1_P, get_color_eq c2_sla, get_val_eq c2_sla,
        get_l_eq c2_sla, get_r_eq c2_sla, get_parent_eq c2_sla, get_color_eq c2_s, get_val_eq c2_s,
        get_l_eq c2_s, get_r_eq c2_s, get_parent_eq c2_s, get_color_eq c2_sra, get_val_eq c2_sra,
        get_l_eq c2_sra, get_r_eq c2_sra, get_parent_eq c2_sra, get_color_eq c2_P, get_val_eq c2_P,
        get_l_eq c2_P, get_r_eq c2_P, get_parent_eq c2_P, e1, e2]

/-- One turn of `fixDoubleBlack`, as `fixDoubleBlack_step` runs it, at a right child whose black sibling has no red child, below a black parent: the parent is repaired next. -/
theorem step_black_black_parent_R {m : map K V} {q : List (frame K V)} {s P : Nat} {vs vP : Option (K × V)}
    {sl sr X : tree K V}
    (h : Rep m (fill q (.node P black vP (.node s black vs sl sr) X)))
    (hroot : X.top ≠ m._root)
    (hsl : sl.color ≠ red)
    (hsr : sr.color ≠ red) :
    ∃ m2, map.fixDoubleBlack_step m X.top (some P) (some s) =
        some (Sum.inr (m2, some P, ptop q, psib q)) ∧
      Rep m2 (fill q (.node P black vP (.node s red vs sl sr) X)) ∧ SameAux m m2 := by
  cases sl with
  | nil =>
    cases sr with
    | nil =>
      have hn := h.nodup
      simp only [nodup_fill_iff, nodup_paddrs_L, nodup_paddrs_R, disjoint_paddrs_L,
        disjoint_paddrs_R, mem_paddrs_L, mem_paddrs_R, tree.addrs_node, tree.addrs_nil,
        List.nodup_append, List.nodup_cons, List.mem_append, List.mem_cons,
        List.disjoint_append_left, List.disjoint_append_right, List.disjoint_cons_left,
        List.disjoint_cons_right, not_or, paddrs_nil, List.disjoint_nil_left,
        List.disjoint_nil_right, List.not_mem_nil, List.nil_append, List.nodup_nil,
        not_false_eq_true, true_and, and_true] at hn
      casesm* _ ∧ _
      have d_s_P : s ≠ P := by first | assumption | exact Ne.symm (by assumption)
      have d_P_s : P ≠ s := by first | assumption | exact Ne.symm (by assumption)
      have t_X_s : X.top ≠ some s := tree.top_ne_of_not_mem (by assumption)
      have u_X_s : some s ≠ X.top := tree.ne_top_of_not_mem (by assumption)
      have t_X_P : X.top ≠ some P := tree.top_ne_of_not_mem (by assumption)
      have u_X_P : some P ≠ X.top := tree.ne_top_of_not_mem (by assumption)
      have c0_s := Rep.cell (p := (.L P black vP X) :: q) h
      have c0_P := Rep.cell (p := q) h
      obtain ⟨m1, e1, r1, a1⟩ := Rep.set_color (p := (.L P black vP X) :: q) h red
      have c1_s := Rep.cell (p := (.L P black vP X) :: q) r1
      have c1_P := Rep.cell (p := q) r1
      have sib_eq := Rep.sibling_eq (p := q) r1
      refine ⟨m1, ?_, r1, a1⟩
      simp [map.fixDoubleBlack_step, map.fixDoubleBlack_red_child, isOnLeft, hasRedChild, hroot, d_s_P,
        d_P_s, t_X_s, u_X_s, t_X_P, u_X_P, get_color_eq c0_s, get_val_eq c0_s, get_l_eq c0_s,
        get_r_eq c0_s, get_parent_eq c0_s, get_color_eq c0_P, get_val_eq c0_P, get_l_eq c0_P,
        get_r_eq c0_P, get_parent_eq c0_P, get_color_eq c1_s, get_val_eq c1_s, get_l_eq c1_s,
        get_r_eq c1_s, get_parent_eq c1_s, get_color_eq c1_P, get_val_eq c1_P, get_l_eq c1_P,
        get_r_eq c1_P, get_parent_eq c1_P, e1, sib_eq]
    | node sra csr vsr srl srr =>
      simp only [tree.color] at hsr
      have hn := h.nodup
      simp only [nodup_fill_iff, nodup_paddrs_L, nodup_paddrs_R, disjoint_paddrs_L,
        disjoint_paddrs_R, mem_paddrs_L, mem_paddrs_R, tree.addrs_node, tree.addrs_nil,
        List.nodup_append, List.nodup_cons, List.mem_append, List.mem_cons,
        List.disjoint_append_left, List.disjoint_append_right, List.disjoint_cons_left,
        List.disjoint_cons_right, not_or, paddrs_nil, List.disjoint_nil_left,
        List.disjoint_nil_right, List.not_mem_nil, List.nil_append, List.nodup_nil,
        not_false_eq_true, true_and, and_true] at hn
      casesm* _ ∧ _
      have d_s_sra : s ≠ sra := by first | assumption | exact Ne.symm (by assumption)
      have d_s_P : s ≠ P := by first | assumption | exact Ne.symm (by assumption)
      have d_sra_s : sra ≠ s := by first | assumption | exact Ne.symm (by assumption)
      have d_sra_P : sra ≠ P := by first | assumption | exact Ne.symm (by assumption)
      have d_P_s : P ≠ s := by first | assumption | exact Ne.symm (by assumption)
      have d_P_sra : P ≠ sra := by first | assumption | exact Ne.symm (by assumption)
      have t_srl_s : srl.top ≠ some s := tree.top_ne_of_not_mem (by assumption)
      have u_srl_s : some s ≠ srl.top := tree.ne_top_of_not_mem (by assumption)
      have t_srl_sra : srl.top ≠ some sra := tree.top_ne_of_not_mem (by assumption)
      have u_srl_sra : some sra ≠ srl.top := tree.ne_top_of_not_mem (by assumption)
      have t_srl_P : srl.top ≠ some P := tree.top_ne_of_not_mem (by assumption)
      have u_srl_P : some P ≠ srl.top := tree.ne_top_of_not_mem (by assumption)
      have t_srr_s : srr.top ≠ some s := tree.top_ne_of_not_mem (by assumption)
      have u_srr_s : some s ≠ srr.top := tree.ne_top_of_not_mem (by assumption)
      have t_srr_sra : srr.top ≠ some sra := tree.top_ne_of_not_mem (by assumption)
      have u_srr_sra : some sra ≠ srr.top := tree.ne_top_of_not_mem (by assumption)
      have t_srr_P : srr.top ≠ some P := tree.top_ne_of_not_mem (by assumption)
      have u_srr_P : some P ≠ srr.top := tree.ne_top_of_not_mem (by assumption)
      have t_X_s : X.top ≠ some s := tree.top_ne_of_not_mem (by assumption)
      have u_X_s : some s ≠ X.top := tree.ne_top_of_not_mem (by assumption)
      have t_X_sra : X.top ≠ some sra := tree.top_ne_of_not_mem (by assumption)
      have u_X_sra : some sra ≠ X.top := tree.ne_top_of_not_mem (by assumption)
      have t_X_P : X.top ≠ some P := tree.top_ne_of_not_mem (by assumption)
      have u_X_P : some P ≠ X.top := tree.ne_top_of_not_mem (by assumption)
      have c0_s := Rep.cell (p := (.L P black vP X) :: q) h
      have c0_sra := Rep.cell (p := (.R s black vs .nil) :: (.L P black vP X) :: q) h
      have c0_P := Rep.cell (p := q) h
      obtain ⟨m1, e1, r1, a1⟩ := Rep.set_color (p := (.L P black vP X) :: q) h red
      have c1_s := Rep.cell (p := (.L P black vP X) :: q) r1
      have c1_sra := Rep.cell (p := (.R s red vs .nil) :: (.L P black vP X) :: q) r1
      have c1_P := Rep.cell (p := q) r1
      have sib_eq := Rep.sibling_eq (p := q) r1
      refine ⟨m1, ?_, r1, a1⟩
      simp [map.fixDoubleBlack_step, map.fixDoubleBlack_red_child, isOnLeft, hasRedChild, hroot, hsr,
        d_s_sra, d_s_P, d_sra_s, d_sra_P, d_P_s, d_P_sra, t_srl_s, u_srl_s, t_srl_sra, u_srl_sra,
        t_srl_P, u_srl_P, t_srr_s, u_srr_s, t_srr_sra, u_srr_sra, t_srr_P, u_srr_P, t_X_s, u_X_s,
        t_X_sra, u_X_sra, t_X_P, u_X_P, get_color_eq c0_s, get_val_eq c0_s, get_l_eq c0_s,
        get_r_eq c0_s, get_parent_eq c0_s, get_color_eq c0_sra, get_val_eq c0_sra, get_l_eq c0_sra,
        get_r_eq c0_sra, get_parent_eq c0_sra, get_color_eq c0_P, get_val_eq c0_P, get_l_eq c0_P,
        get_r_eq c0_P, get_parent_eq c0_P, get_color_eq c1_s, get_val_eq c1_s, get_l_eq c1_s,
        get_r_eq c1_s, get_parent_eq c1_s, get_color_eq c1_sra, get_val_eq c1_sra, get_l_eq c1_sra,
        get_r_eq c1_sra, get_parent_eq c1_sra, get_color_eq c1_P, get_val_eq c1_P, get_l_eq c1_P,
        get_r_eq c1_P, get_parent_eq c1_P, e1, sib_eq]
  | node sla csl vsl sll slr =>
    simp only [tree.color] at hsl
    cases sr with
    | nil =>
      have hn := h.nodup
      simp only [nodup_fill_iff, nodup_paddrs_L, nodup_paddrs_R, disjoint_paddrs_L,
        disjoint_paddrs_R, mem_paddrs_L, mem_paddrs_R, tree.addrs_node, tree.addrs_nil,
        List.nodup_append, List.nodup_cons, List.mem_append, List.mem_cons,
        List.disjoint_append_left, List.disjoint_append_right, List.disjoint_cons_left,
        List.disjoint_cons_right, not_or, paddrs_nil, List.disjoint_nil_left,
        List.disjoint_nil_right, List.not_mem_nil, List.nil_append, List.nodup_nil,
        not_false_eq_true, true_and, and_true] at hn
      casesm* _ ∧ _
      have d_sla_s : sla ≠ s := by first | assumption | exact Ne.symm (by assumption)
      have d_sla_P : sla ≠ P := by first | assumption | exact Ne.symm (by assumption)
      have d_s_sla : s ≠ sla := by first | assumption | exact Ne.symm (by assumption)
      have d_s_P : s ≠ P := by first | assumption | exact Ne.symm (by assumption)
      have d_P_sla : P ≠ sla := by first | assumption | exact Ne.symm (by assumption)
      have d_P_s : P ≠ s := by first | assumption | exact Ne.symm (by assumption)
      have t_sll_sla : sll.top ≠ some sla := tree.top_ne_of_not_mem (by assumption)
      have u_sll_sla : some sla ≠ sll.top := tree.ne_top_of_not_mem (by assumption)
      have t_sll_s : sll.top ≠ some s := tree.top_ne_of_not_mem (by assumption)
      have u_sll_s : some s ≠ sll.top := tree.ne_top_of_not_mem (by assumption)
      have t_sll_P : sll.top ≠ some P := tree.top_ne_of_not_mem (by assumption)
      have u_sll_P : some P ≠ sll.top := tree.ne_top_of_not_mem (by assumption)
      have t_slr_sla : slr.top ≠ some sla := tree.top_ne_of_not_mem (by assumption)
      have u_slr_sla : some sla ≠ slr.top := tree.ne_top_of_not_mem (by assumption)
      have t_slr_s : slr.top ≠ some s := tree.top_ne_of_not_mem (by assumption)
      have u_slr_s : some s ≠ slr.top := tree.ne_top_of_not_mem (by assumption)
      have t_slr_P : slr.top ≠ some P := tree.top_ne_of_not_mem (by assumption)
      have u_slr_P : some P ≠ slr.top := tree.ne_top_of_not_mem (by assumption)
      have t_X_sla : X.top ≠ some sla := tree.top_ne_of_not_mem (by assumption)
      have u_X_sla : some sla ≠ X.top := tree.ne_top_of_not_mem (by assumption)
      have t_X_s : X.top ≠ some s := tree.top_ne_of_not_mem (by assumption)
      have u_X_s : some s ≠ X.top := tree.ne_top_of_not_mem (by assumption)
      have t_X_P : X.top ≠ some P := tree.top_ne_of_not_mem (by assumption)
      have u_X_P : some P ≠ X.top := tree.ne_top_of_not_mem (by assumption)
      have c0_sla := Rep.cell (p := (.L s black vs .nil) :: (.L P black vP X) :: q) h
      have c0_s := Rep.cell (p := (.L P black vP X) :: q) h
      have c0_P := Rep.cell (p := q) h
      obtain ⟨m1, e1, r1, a1⟩ := Rep.set_color (p := (.L P black vP X) :: q) h red
      have c1_sla := Rep.cell (p := (.L s red vs .nil) :: (.L P black vP X) :: q) r1
      have c1_s := Rep.cell (p := (.L P black vP X) :: q) r1
      have c1_P := Rep.cell (p := q) r1
      have sib_eq := Rep.sibling_eq (p := q) r1
      refine ⟨m1, ?_, r1, a1⟩
      simp [map.fixDoubleBlack_step, map.fixDoubleBlack_red_child, isOnLeft, hasRedChild, hroot, hsl,
        d_sla_s, d_sla_P, d_s_sla, d_s_P, d_P_sla, d_P_s, t_sll_sla, u_sll_sla, t_sll_s, u_sll_s,
        t_sll_P, u_sll_P, t_slr_sla, u_slr_sla, t_slr_s, u_slr_s, t_slr_P, u_slr_P, t_X_sla, u_X_sla,
        t_X_s, u_X_s, t_X_P, u_X_P, get_color_eq c0_sla, get_val_eq c0_sla, get_l_eq c0_sla,
        get_r_eq c0_sla, get_parent_eq c0_sla, get_color_eq c0_s, get_val_eq c0_s, get_l_eq c0_s,
        get_r_eq c0_s, get_parent_eq c0_s, get_color_eq c0_P, get_val_eq c0_P, get_l_eq c0_P,
        get_r_eq c0_P, get_parent_eq c0_P, get_color_eq c1_sla, get_val_eq c1_sla, get_l_eq c1_sla,
        get_r_eq c1_sla, get_parent_eq c1_sla, get_color_eq c1_s, get_val_eq c1_s, get_l_eq c1_s,
        get_r_eq c1_s, get_parent_eq c1_s, get_color_eq c1_P, get_val_eq c1_P, get_l_eq c1_P,
        get_r_eq c1_P, get_parent_eq c1_P, e1, sib_eq]
    | node sra csr vsr srl srr =>
      simp only [tree.color] at hsr
      have hn := h.nodup
      simp only [nodup_fill_iff, nodup_paddrs_L, nodup_paddrs_R, disjoint_paddrs_L,
        disjoint_paddrs_R, mem_paddrs_L, mem_paddrs_R, tree.addrs_node, tree.addrs_nil,
        List.nodup_append, List.nodup_cons, List.mem_append, List.mem_cons,
        List.disjoint_append_left, List.disjoint_append_right, List.disjoint_cons_left,
        List.disjoint_cons_right, not_or, paddrs_nil, List.disjoint_nil_left,
        List.disjoint_nil_right, List.not_mem_nil, List.nil_append, List.nodup_nil,
        not_false_eq_true, true_and, and_true] at hn
      casesm* _ ∧ _
      have d_sla_s : sla ≠ s := by first | assumption | exact Ne.symm (by assumption)
      have d_sla_sra : sla ≠ sra := by first | assumption | exact Ne.symm (by assumption)
      have d_sla_P : sla ≠ P := by first | assumption | exact Ne.symm (by assumption)
      have d_s_sla : s ≠ sla := by first | assumption | exact Ne.symm (by assumption)
      have d_s_sra : s ≠ sra := by first | assumption | exact Ne.symm (by assumption)
      have d_s_P : s ≠ P := by first | assumption | exact Ne.symm (by assumption)
      have d_sra_sla : sra ≠ sla := by first | assumption | exact Ne.symm (by assumption)
      have d_sra_s : sra ≠ s := by first | assumption | exact Ne.symm (by assumption)
      have d_sra_P : sra ≠ P := by first | assumption | exact Ne.symm (by assumption)
      have d_P_sla : P ≠ sla := by first | assumption | exact Ne.symm (by assumption)
      have d_P_s : P ≠ s := by first | assumption | exact Ne.symm (by assumption)
      have d_P_sra : P ≠ sra := by first | assumption | exact Ne.symm (by assumption)
      have t_sll_sla : sll.top ≠ some sla := tree.top_ne_of_not_mem (by assumption)
      have u_sll_sla : some sla ≠ sll.top := tree.ne_top_of_not_mem (by assumption)
      have t_sll_s : sll.top ≠ some s := tree.top_ne_of_not_mem (by assumption)
      have u_sll_s : some s ≠ sll.top := tree.ne_top_of_not_mem (by assumption)
      have t_sll_sra : sll.top ≠ some sra := tree.top_ne_of_not_mem (by assumption)
      have u_sll_sra : some sra ≠ sll.top := tree.ne_top_of_not_mem (by assumption)
      have t_sll_P : sll.top ≠ some P := tree.top_ne_of_not_mem (by assumption)
      have u_sll_P : some P ≠ sll.top := tree.ne_top_of_not_mem (by assumption)
      have t_slr_sla : slr.top ≠ some sla := tree.top_ne_of_not_mem (by assumption)
      have u_slr_sla : some sla ≠ slr.top := tree.ne_top_of_not_mem (by assumption)
      have t_slr_s : slr.top ≠ some s := tree.top_ne_of_not_mem (by assumption)
      have u_slr_s : some s ≠ slr.top := tree.ne_top_of_not_mem (by assumption)
      have t_slr_sra : slr.top ≠ some sra := tree.top_ne_of_not_mem (by assumption)
      have u_slr_sra : some sra ≠ slr.top := tree.ne_top_of_not_mem (by assumption)
      have t_slr_P : slr.top ≠ some P := tree.top_ne_of_not_mem (by assumption)
      have u_slr_P : some P ≠ slr.top := tree.ne_top_of_not_mem (by assumption)
      have t_srl_sla : srl.top ≠ some sla := tree.top_ne_of_not_mem (by assumption)
      have u_srl_sla : some sla ≠ srl.top := tree.ne_top_of_not_mem (by assumption)
      have t_srl_s : srl.top ≠ some s := tree.top_ne_of_not_mem (by assumption)
      have u_srl_s : some s ≠ srl.top := tree.ne_top_of_not_mem (by assumption)
      have t_srl_sra : srl.top ≠ some sra := tree.top_ne_of_not_mem (by assumption)
      have u_srl_sra : some sra ≠ srl.top := tree.ne_top_of_not_mem (by assumption)
      have t_srl_P : srl.top ≠ some P := tree.top_ne_of_not_mem (by assumption)
      have u_srl_P : some P ≠ srl.top := tree.ne_top_of_not_mem (by assumption)
      have t_srr_sla : srr.top ≠ some sla := tree.top_ne_of_not_mem (by assumption)
      have u_srr_sla : some sla ≠ srr.top := tree.ne_top_of_not_mem (by assumption)
      have t_srr_s : srr.top ≠ some s := tree.top_ne_of_not_mem (by assumption)
      have u_srr_s : some s ≠ srr.top := tree.ne_top_of_not_mem (by assumption)
      have t_srr_sra : srr.top ≠ some sra := tree.top_ne_of_not_mem (by assumption)
      have u_srr_sra : some sra ≠ srr.top := tree.ne_top_of_not_mem (by assumption)
      have t_srr_P : srr.top ≠ some P := tree.top_ne_of_not_mem (by assumption)
      have u_srr_P : some P ≠ srr.top := tree.ne_top_of_not_mem (by assumption)
      have t_X_sla : X.top ≠ some sla := tree.top_ne_of_not_mem (by assumption)
      have u_X_sla : some sla ≠ X.top := tree.ne_top_of_not_mem (by assumption)
      have t_X_s : X.top ≠ some s := tree.top_ne_of_not_mem (by assumption)
      have u_X_s : some s ≠ X.top := tree.ne_top_of_not_mem (by assumption)
      have t_X_sra : X.top ≠ some sra := tree.top_ne_of_not_mem (by assumption)
      have u_X_sra : some sra ≠ X.top := tree.ne_top_of_not_mem (by assumption)
      have t_X_P : X.top ≠ some P := tree.top_ne_of_not_mem (by assumption)
      have u_X_P : some P ≠ X.top := tree.ne_top_of_not_mem (by assumption)
      have c0_sla := Rep.cell (p := (.L s black vs (.node sra csr vsr srl srr)) :: (.L P black vP X) :: q) h
      have c0_s := Rep.cell (p := (.L P black vP X) :: q) h
      have c0_sra := Rep.cell (p := (.R s black vs (.node sla csl vsl sll slr)) :: (.L P black vP X) :: q) h
      have c0_P := Rep.cell (p := q) h
      obtain ⟨m1, e1, r1, a1⟩ := Rep.set_color (p := (.L P black vP X) :: q) h red
      have c1_sla := Rep.cell (p := (.L s red vs (.node sra csr vsr srl srr)) :: (.L P black vP X) :: q) r1
      have c1_s := Rep.cell (p := (.L P black vP X) :: q) r1
      have c1_sra := Rep.cell (p := (.R s red vs (.node sla csl vsl sll slr)) :: (.L P black vP X) :: q) r1
      have c1_P := Rep.cell (p := q) r1
      have sib_eq := Rep.sibling_eq (p := q) r1
      refine ⟨m1, ?_, r1, a1⟩
      simp [map.fixDoubleBlack_step, map.fixDoubleBlack_red_child, isOnLeft, hasRedChild, hroot, hsl, hsr,
        d_sla_s, d_sla_sra, d_sla_P, d_s_sla, d_s_sra, d_s_P, d_sra_sla, d_sra_s, d_sra_P, d_P_sla,
        d_P_s, d_P_sra, t_sll_sla, u_sll_sla, t_sll_s, u_sll_s, t_sll_sra, u_sll_sra, t_sll_P,
        u_sll_P, t_slr_sla, u_slr_sla, t_slr_s, u_slr_s, t_slr_sra, u_slr_sra, t_slr_P, u_slr_P,
        t_srl_sla, u_srl_sla, t_srl_s, u_srl_s, t_srl_sra, u_srl_sra, t_srl_P, u_srl_P, t_srr_sla,
        u_srr_sla, t_srr_s, u_srr_s, t_srr_sra, u_srr_sra, t_srr_P, u_srr_P, t_X_sla, u_X_sla, t_X_s,
        u_X_s, t_X_sra, u_X_sra, t_X_P, u_X_P, get_color_eq c0_sla, get_val_eq c0_sla,
        get_l_eq c0_sla, get_r_eq c0_sla, get_parent_eq c0_sla, get_color_eq c0_s, get_val_eq c0_s,
        get_l_eq c0_s, get_r_eq c0_s, get_parent_eq c0_s, get_color_eq c0_sra, get_val_eq c0_sra,
        get_l_eq c0_sra, get_r_eq c0_sra, get_parent_eq c0_sra, get_color_eq c0_P, get_val_eq c0_P,
        get_l_eq c0_P, get_r_eq c0_P, get_parent_eq c0_P, get_color_eq c1_sla, get_val_eq c1_sla,
        get_l_eq c1_sla, get_r_eq c1_sla, get_parent_eq c1_sla, get_color_eq c1_s, get_val_eq c1_s,
        get_l_eq c1_s, get_r_eq c1_s, get_parent_eq c1_s, get_color_eq c1_sra, get_val_eq c1_sra,
        get_l_eq c1_sra, get_r_eq c1_sra, get_parent_eq c1_sra, get_color_eq c1_P, get_val_eq c1_P,
        get_l_eq c1_P, get_r_eq c1_P, get_parent_eq c1_P, e1, sib_eq]

end ft

namespace ft
open color_type
variable {K V : Type}

/-! ### The chain of invocations of `fixDoubleBlack` -/

/-- The invocations of a call of `fixDoubleBlack` are the call itself, followed by those of the
self-call if its first turn makes one. -/
theorem fixDoubleBlack_calls_succ (fuel : Nat) (m : map K V) (x p s : ptr) :
    map.fixDoubleBlack_calls (fuel + 1) m x p s =
      ub_bind (map.fixDoubleBlack_step m x p s) (fun r =>
        match r with
        | .inl _ => some [(m, x, p, s)]
        | .inr c => ub_bind (map.fixDoubleBlack_calls fuel c.1 c.2.1 c.2.2.1 c.2.2.2)
            (fun rest => some ((m, x, p, s) :: rest))) := by
  rfl

/-- The sibling of a place that expects black height `n + 1` is a data node. -/
theorem Bal.data_top {S : tree K V} {c : color_type} {n : Nat} (h : Bal S c (n + 1)) :
    ∃ s cs xs sl sr, S = .node s cs (some xs) sl sr := by
  cases h with
  | red hl hr => exact ⟨_, _, _, _, _, rfl⟩
  | black hl hr => exact ⟨_, _, _, _, _, rfl⟩

/-- In a state that represents a tree with a black-deficient place, the sibling of the place
is a data node. -/
theorem sibling_is_data_of_path {m : map K V} {f : frame K V} {q : List (frame K V)}
    {X : tree K V} {n : Nat} (h : Rep m (fill (f :: q) X))
    (hp : PathBal (f :: q) black (n + 1)) (x : ptr) :
    map.sibling_is_data (m, x, ptop (f :: q), psib (f :: q)) = true := by
  cases hp with
  | redL hS hq =>
    obtain ⟨s, cs, xs, sl, sr, rfl⟩ := hS.data_top
    have hc := Rep.cell (p := .R _ _ _ X :: q) h
    simp [map.sibling_is_data, psib, tree.top, map.payload, hc]
  | redR hS hq =>
    obtain ⟨s, cs, xs, sl, sr, rfl⟩ := hS.data_top
    have hc := Rep.cell (p := .L _ _ _ X :: q) h
    simp [map.sibling_is_data, psib, tree.top, map.payload, hc]
  | blackL hS hq =>
    obtain ⟨s, cs, xs, sl, sr, rfl⟩ := hS.data_top
    have hc := Rep.cell (p := .R _ _ _ X :: q) h
    simp [map.sibling_is_data, psib, tree.top, map.payload, hc]
  | blackR hS hq =>
    obtain ⟨s, cs, xs, sl, sr, rfl⟩ := hS.data_top
    have hc := Rep.cell (p := .L _ _ _ X :: q) h
    simp [map.sibling_is_data, psib, tree.top, map.payload, hc]

/-- One turn of `fixDoubleBlack` at a left child whose sibling is black: either the turn
returns, or (black parent, no red nephew) it invokes `fixDoubleBlack` on the parent. -/
theorem step_black_L {m : map K V} {q : List (frame K V)} {P : Nat} {cP : color_type}
    {xP : K × V} {X S : tree K V} {n : Nat}
    (h : Rep m (fill ((.L P cP (some xP) S) :: q) X)) (hX : Bal X black n)
    (hp : PathBal ((.L P cP (some xP) S) :: q) black (n + 1)) (hS : Bal S black (n + 1)) :
    (∃ m2, map.fixDoubleBlack_step m X.top (some P) S.top = some (Sum.inl m2)) ∨
    (∃ m2 s xs sl sr, cP = black ∧
      map.fixDoubleBlack_step m X.top (some P) S.top =
        some (Sum.inr (m2, some P, ptop q, psib q)) ∧
      Rep m2 (fill q (.node P black (some xP) X (.node s red (some xs) sl sr))) ∧
      Bal (.node P black (some xP) X (.node s red (some xs) sl sr)) black (n + 1) ∧
      PathBal q black (n + 2)) := by
  have hroot : X.top ≠ m._root := Rep.top_ne_root h
  cases hS with
  | @black s xs sl sr c1 c2 _ hsl hsr =>
    by_cases h1 : sl.color = red
    · -- red left nephew
      cases hsl with
      | nil => simp [tree.color] at h1
      | sentinel => simp [tree.color] at h1
      | black => simp [tree.color] at h1
      | @red a xa A B _ hA hB =>
        cases hp with
        | @redL _ _ _ _ _ hS2 hq =>
          obtain ⟨m2, e2, r2, a2⟩ := step_red_left_L (q := q) h hroot
          exact Or.inl ⟨m2, e2⟩
        | @blackL _ _ _ _ _ _ _ hS2 hq =>
          obtain ⟨m2, e2, r2, a2⟩ := step_red_left_L (q := q) h hroot
          exact Or.inl ⟨m2, e2⟩
    · by_cases h2 : sr.color = red
      · cases hsr with
        | nil => simp [tree.color] at h2
        | sentinel => simp [tree.color] at h2
        | black => simp [tree.color] at h2
        | @red b xb C D _ hC hD =>
          cases hp with
          | @redL _ _ _ _ _ hS2 hq =>
            obtain ⟨m2, e2, r2, a2⟩ := step_red_right_L (q := q) h hroot h1
            exact Or.inl ⟨m2, e2⟩
          | @blackL _ _ _ _ _ _ _ hS2 hq =>
            obtain ⟨m2, e2, r2, a2⟩ := step_red_right_L (q := q) h hroot h1
            exact Or.inl ⟨m2, e2⟩
      · have hslb : Bal sl black n := by
          have hc := hsl.color_eq
          cases c1 with
          | red => exact absurd hc h1
          | black => exact hsl
        have hsrb : Bal sr black n := by
          have hc := hsr.color_eq
          cases c2 with
          | red => exact absurd hc h2
          | black => exact hsr
        cases hp with
        | @redL _ _ _ _ _ hS2 hq =>
          obtain ⟨m2, e2, r2, a2⟩ := step_black_red_parent_L (q := q) h hroot h1 h2
          exact Or.inl ⟨m2, e2⟩
        | @blackL _ _ _ _ _ _ _ hS2 hq =>
          obtain ⟨m2, e2, r2, a2⟩ := step_black_black_parent_L (q := q) h hroot h1 h2
          exact Or.inr ⟨m2, s, xs, sl, sr, rfl, e2, r2, Bal.black (a := P) (x := xP) hX (Bal.red (a := s) (x := xs) hslb hsrb), hq⟩

/-- One turn of `fixDoubleBlack` at a right child whose sibling is black: either the turn
returns, or (black parent, no red nephew) it invokes `fixDoubleBlack` on the parent. -/
theorem step_black_R {m : map K V} {q : List (frame K V)} {P : Nat} {cP : color_type}
    {xP : K × V} {X S : tree K V} {n : Nat}
    (h : Rep m (fill ((.R P cP (some xP) S) :: q) X)) (hX : Bal X black n)
    (hp : PathBal ((.R P cP (some xP) S) :: q) black (n + 1)) (hS : Bal S black (n + 1)) :
    (∃ m2, map.fixDoubleBlack_step m X.top (some P) S.top = some (Sum.inl m2)) ∨
    (∃ m2 s xs sl sr, cP = black ∧
      map.fixDoubleBlack_step m X.top (some P) S.top =
        some (Sum.inr (m2, some P, ptop q, psib q)) ∧
      Rep m2 (fill q (.node P black (some xP) (.node s red (some xs) sl sr) X)) ∧
      Bal (.node P black (some xP) (.node s red (some xs) sl sr) X) black (n + 1) ∧
      PathBal q black (n + 2)) := by
  have hroot : X.top ≠ m._root := Rep.top_ne_root h
  cases hS with
  | @black s xs sl sr c1 c2 _ hsl hsr =>
    by_cases h1 : sl.color = red
    · -- red left nephew
      cases hsl with
      | nil => simp [tree.color] at h1
      | sentinel => simp [tree.color] at h1
      | black => simp [tree.color] at h1
      | @red a xa A B _ hA hB =>
        cases hp with
        | @redR _ _ _ _ _ hS2 hq =>
          obtain ⟨m2, e2, r2, a2⟩ := step_red_left_R (q := q) h hroot
          exact Or.inl ⟨m2, e2⟩
        | @blackR _ _ _ _ _ _ _ hS2 hq =>
          obtain ⟨m2, e2, r2, a2⟩ := step_red_left_R (q := q) h hroot
          exact Or.inl ⟨m2, e2⟩
    · by_cases h2 : sr.color = red
      · cases hsr with
        | nil => simp [tree.color] at h2
        | sentinel => simp [tree.color] at h2
        | black => simp [tree.color] at h2
        | @red b xb C D _ hC hD =>
          cases hp with
          | @redR _ _ _ _ _ hS2 hq =>
            obtain ⟨m2, e2, r2, a2⟩ := step_red_right_R (q := q) h hroot h1
            exact Or.inl ⟨m2, e2⟩
          | @blackR _ _ _ _ _ _ _ hS2 hq =>
            obtain ⟨m2, e2, r2, a2⟩ := step_red_right_R (q := q) h hroot h1
            exact Or.inl ⟨m2, e2⟩
      · have hslb : Bal sl black n := by
          have hc := hsl.color_eq
          cases c1 with
          | red => exact absurd hc h1
          | black => exact hsl
        have hsrb : Bal sr black n := by
          have hc := hsr.color_eq
          cases c2 with
          | red => exact absurd hc h2
          | black => exact hsr
        cases hp with
        | @redR _ _ _ _ _ hS2 hq =>
          obtain ⟨m2, e2, r2, a2⟩ := step_black_red_parent_R (q := q) h hroot h1 h2
          exact Or.inl ⟨m2, e2⟩
        | @blackR _ _ _ _ _ _ _ hS2 hq =>
          obtain ⟨m2, e2, r2, a2⟩ := step_black_black_parent_R (q := q) h hroot h1 h2
          exact Or.inr ⟨m2, s, xs, sl, sr, rfl, e2, r2, Bal.black (a := P) (x := xP) (Bal.red (a := s) (x := xs) hslb hsrb) hX, hq⟩

theorem calls_done {m m2 : map K V} {x p s : ptr}
    (e : map.fixDoubleBlack_step m x p s = some (Sum.inl m2)) (fuel : Nat) :
    map.fixDoubleBlack_calls (fuel + 1) m x p s = some [(m, x, p, s)] := by
  rw [fixDoubleBlack_calls_succ, e]
  rfl

theorem calls_more {m m2 : map K V} {x p s x2 p2 s2 : ptr} {fuel : Nat}
    {rest : List (map.fix_call K V)}
    (e : map.fixDoubleBlack_step m x p s = some (Sum.inr (m2, x2, p2, s2)))
    (e2 : map.fixDoubleBlack_calls fuel m2 x2 p2 s2 = some rest) :
    map.fixDoubleBlack_calls (fuel + 1) m x p s = some ((m, x, p, s) :: rest) := by
  rw [fixDoubleBlack_calls_succ, e]
  simp only [ub_bind_some, e2]

set_option maxHeartbeats 4000000 in
/-- The invocations of `fixDoubleBlack` that start at a black subtree which is one black node
short of what its place expects: the chain is finite, and every invocation is made with
`x == _root` or with a data node as `sibling`. -/
theorem fixDoubleBlack_calls_spec : ∀ (fuel : Nat) (p : List (frame K V)) (m : map K V)
    (X : tree K V) (n : Nat),
    Rep m (fill p X) → Bal X black n → PathBal p black (n + 1) → 2 * p.length + 1 ≤ fuel →
    ∃ calls, map.fixDoubleBlack_calls fuel m X.top (ptop p) (psib p) = some calls ∧
      ∀ c ∈ calls, map.at_root c = true ∨ map.sibling_is_data c = true := by
  intro fuel
  induction fuel with
  | zero => intro p m X n _ _ _ hf; omega
  | succ fuel ih =>
  intro p m X n h hX hp hfuel
  cases p with
  | nil =>
    have hr := h.root
    simp only [fill_nil] at hr
    have e : map.fixDoubleBlack_step m X.top (ptop ([] : List (frame K V)))
        (psib ([] : List (frame K V))) = some (Sum.inl m) := by
      simp [map.fixDoubleBlack_step, hr]
    refine ⟨_, calls_done e fuel, ?_⟩
    intro c hc
    simp only [List.mem_singleton] at hc
    subst hc
    left
    simp [map.at_root, hr]
  | cons f q =>
    have ok0 := sibling_is_data_of_path h hp X.top
    cases f with
    | L P cP vP S =>
      have hroot : X.top ≠ m._root := Rep.top_ne_root h
      by_cases hSr : S.color = red
      · cases hp with
        | @redL _ xP _ _ _ hS hq => exact absurd hS.color_eq (by rw [hSr]; simp)
        | @blackL _ xP _ _ _ c2 _ hS hq =>
          cases hS with
          | black => simp [tree.color] at hSr
          | @red s xs sl sr _ hsl hsr =>
            obtain ⟨fuel, rfl⟩ : ∃ f, fuel = f + 1 := ⟨fuel - 1, by simp at hfuel; omega⟩
            obtain ⟨m2, e2, r2, a2⟩ := step_red_sibling_L (q := q) h hroot
            have r3 : Rep m2 (fill ((.L P red (some xP) sl) :: (.L s black (some xs) sr) :: q) X) := r2
            have hp3 : PathBal ((.L P red (some xP) sl) :: (.L s black (some xs) sr) :: q)
                black (n + 1) := PathBal.redL hsl (PathBal.blackL hsr hq)
            have ok1 := sibling_is_data_of_path r3 hp3 X.top
            rcases step_black_L r3 hX hp3 hsl with ⟨m3, e3⟩ | ⟨m3, _, _, _, _, hc, _⟩
            · refine ⟨_, calls_more e2 (calls_done e3 fuel), ?_⟩
              intro c hc
              simp only [List.mem_cons, List.mem_singleton, List.not_mem_nil, or_false] at hc
              rcases hc with rfl | rfl
              · exact Or.inr ok0
              · exact Or.inr ok1
            · exact absurd hc (by simp)
      · have hSb : Bal S black (n + 1) := by
          cases hp with
          | @redL _ xP _ _ _ hS hq => exact hS
          | @blackL _ xP _ _ _ c2 _ hS hq =>
            have hc := hS.color_eq
            cases c2 with
            | red => exact absurd hc hSr
            | black => exact hS
        have hxP : ∃ xP, vP = some xP := by
          cases hp with
          | @redL _ xP _ _ _ hS hq => exact ⟨xP, rfl⟩
          | @blackL _ xP _ _ _ c2 _ hS hq => exact ⟨xP, rfl⟩
        obtain ⟨xP, rfl⟩ := hxP
        rcases step_black_L h hX hp hSb with
          ⟨m3, e3⟩ | ⟨m3, s, xs, sl, sr, _, e3, r4, hb, hq2⟩
        · refine ⟨_, calls_done e3 fuel, ?_⟩
          intro c hc
          simp only [List.mem_singleton] at hc
          subst hc
          exact Or.inr ok0
        · obtain ⟨rest, e4, hrest⟩ := ih q m3 _ (n + 1) r4 hb hq2 (by simp at hfuel; omega)
          refine ⟨_, calls_more e3 e4, ?_⟩
          intro c hc
          simp only [List.mem_cons] at hc
          rcases hc with rfl | hc
          · exact Or.inr ok0
          · exact hrest c hc
    | R P cP vP S =>
      have hroot : X.top ≠ m._root := Rep.top_ne_root h
      by_cases hSr : S.color = red
      · cases hp with
        | @redR _ xP _ _ _ hS hq => exact absurd hS.color_eq (by rw [hSr]; simp)
        | @blackR _ xP _ _ _ c2 _ hS hq =>
          cases hS with
          | black => simp [tree.color] at hSr
          | @red s xs sl sr _ hsl hsr =>
            obtain ⟨fuel, rfl⟩ : ∃ f, fuel = f + 1 := ⟨fuel - 1, by simp at hfuel; omega⟩
            obtain ⟨m2, e2, r2, a2⟩ := step_red_sibling_R (q := q) h hroot
            have r3 : Rep m2 (fill ((.R P red (some xP) sr) :: (.R s black (some xs) sl) :: q) X) := r2
            have hp3 : PathBal ((.R P red (some xP) sr) :: (.R s black (some xs) sl) :: q)
                black (n + 1) := PathBal.redR hsr (PathBal.blackR hsl hq)
            have ok1 := sibling_is_data_of_path r3 hp3 X.top
            rcases step_black_R r3 hX hp3 hsr with ⟨m3, e3⟩ | ⟨m3, _, _, _, _, hc, _⟩
            · refine ⟨_, calls_more e2 (calls_done e3 fuel), ?_⟩
              intro c hc
              simp only [List.mem_cons, List.mem_singleton, List.not_mem_nil, or_false] at hc
              rcases hc with rfl | rfl
              · exact Or.inr ok0
              · exact Or.inr ok1
            · exact absurd hc (by simp)
      · have hSb : Bal S black (n + 1) := by
          cases hp with
          | @redR _ xP _ _ _ hS hq => exact hS
          | @blackR _ xP _ _ _ c2 _ hS hq =>
            have hc := hS.color_eq
            cases c2 with
            | red => exact absurd hc hSr
            | black => exact hS
        have hxP : ∃ xP, vP = some xP := by
          cases hp with
          | @redR _ xP _ _ _ hS hq => exact ⟨xP, rfl⟩
          | @blackR _ xP _ _ _ c2 _ hS hq => exact ⟨xP, rfl⟩
        obtain ⟨xP, rfl⟩ := hxP
        rcases step_black_R h hX hp hSb with
          ⟨m3, e3⟩ | ⟨m3, s, xs, sl, sr, _, e3, r4, hb, hq2⟩
        · refine ⟨_, calls_done e3 fuel, ?_⟩
          intro c hc
          simp only [List.mem_singleton] at hc
          subst hc
          exact Or.inr ok0
        · obtain ⟨rest, e4, hrest⟩ := ih q m3 _ (n + 1) r4 hb hq2 (by simp at hfuel; omega)
          refine ⟨_, calls_more e3 e4, ?_⟩
          intro c hc
          simp only [List.mem_cons] at hc
          rcases hc with rfl | hc
          · exact Or.inr ok0
          · exact hrest c hc

end ft

namespace ft
open color_type
variable {K V : Type}

/-! ### The call of `fixDoubleBlack` in `set_parent_target` -/

/-- The cells after `set_parent_target_pre`, case `leaf_red_L`. -/
theorem pre_leaf_red_L_cells {m : map K V} {p g : Nat}
    {cg : color_type} {vP vg : Option (K × V)} {q1 q2 : ptr}
    (c_p : m.mem p = some { color := red, val := vP, l := none, r := none, parent := some g })
    (c_g : m.mem g = some { color := cg, val := vg, l := some p, r := q1, parent := q2 })
    (d_p_g : p ≠ g) :
    ∃ m2, map.set_parent_target_pre m (some p) none = some (Sum.inl m2) ∧
      m2.mem p = some { color := red, val := vP, l := none, r := none, parent := some g } ∧
      m2.mem g = some { color := cg, val := vg, l := none, r := q1, parent := q2 } ∧
      (∀ b, b ∉ [g] → m2.mem b = m.mem b) ∧
      m2._root = m._root ∧
      m2.brk = m.brk ∧
      m2._sz = m._sz ∧
      m2._cmp_k = m._cmp_k :=
  have hr0 : m._root = m._root := rfl
  Exists.elim (set_l_step (m := m) c_g none) fun m1 S1 =>
  have w1 : m1.mem g = some { color := cg, val := vg, l := none, r := q1, parent := q2 } := S1.2.1
  have hop : map.set_parent_target_pre m (some p) none = some (Sum.inl m1) := by
    simp only [map.set_parent_target_pre, map.set_parent_target_fix_call, isOnLeft,
      (get_parent_eq (m := m) c_p : get_parent m (some p) = some (some g)),
      (get_l_eq (m := m) c_g : get_l m (some g) = some (some p)),
      (get_parent_eq (m := m) c_p : get_parent m (some p) = some (some g)), S1.1,
      (get_color_eq (m := m1) ((S1.2.2.1 p d_p_g).trans c_p) : get_color m1 (some p) = some red),
      bind_eq_ub, pure_eq_some, ub_bind_some, ne_eq, Option.some.injEq, not_false_eq_true,
      not_true_eq_false, and_self, and_true, true_and, and_false, false_and, if_true, if_false,
      ite_true, ite_false, reduceCtorEq, reduceIte, ite_not, not_not, Bool.not_eq_true,
      decide_eq_true_eq, decide_eq_false_iff_not, decide_True, decide_False, Bool.false_eq_true,
      eq_self_iff_true, Option.isSome_some, Option.isSome_none]
  have h_g : ∀ b, b ∉ [g] → b ≠ g := fun b hb e => hb (e ▸ List.Mem.head _)
  ⟨m1, hop, ((S1.2.2.1 p d_p_g).trans c_p), w1, (fun b hb => (S1.2.2.1 b (h_g b hb))),
    (S1.2.2.2.2.1.trans hr0), S1.2.2.2.1, S1.2.2.2.2.2.1, S1.2.2.2.2.2.2⟩

/-- Member `set_parent_target` up to its call of `fixDoubleBlack`, with a null target at a red left child without children: no call is made. -/
theorem pre_leaf_red_L
    {m : map K V} {p g : Nat} {cg : color_type} {vP vg : Option (K × V)} {sg : tree K V}
    {q : List (frame K V)}
    (h : Rep m (fill ((.L g cg vg sg) :: q)
      (.node p red vP .nil .nil))) :
    ∃ m2, map.set_parent_target_pre m (some p) none = some (Sum.inl m2) ∧
      Rep m2 (fill ((.L g cg vg sg) :: q)
        .nil) ∧ SameAux m m2 :=
  have hs := shaped_fill.1 h.shaped
  have c_p : m.mem p = some { color := red, val := vP, l := none, r := none, parent := some g } :=
    hs.2.1
  have c_g : m.mem g = some { color := cg, val := vg, l := some p, r := sg.top, parent := ptop q }
    := hs.1.1
  have hB : (List.flatten [(pbefore q).map Prod.fst, [p], [g], sg.addrs, (pafter q).map
    Prod.fst]).Nodup := by
    have e : (fill ((.L g cg vg sg) :: q) (.node p red vP .nil .nil)).addrs =
        List.flatten [(pbefore q).map Prod.fst, [p], [g], sg.addrs, (pafter q).map Prod.fst] := by
      rw [fill_addrs]
      simp [pbefore, pafter, pbefore_append, pafter_append, tree.addrs]
    exact e ▸ h.nodup
  Exists.elim (pre_leaf_red_L_cells c_p c_g (blocks_ne_at hB 1 2 rfl rfl rfl)) fun m2 H =>
  have fr := H.2.2.2.1
  have a_sg : ∀ b ∈ sg.addrs, m2.mem b = m.mem b :=
    region_agree hB [2] [g] 3 rfl rfl rfl fr
  have a_q : ∀ b ∈ paddrs q, m2.mem b = m.mem b :=
    paddrs_agree (region_agree hB [2] [g] 0 rfl rfl rfl fr)
      (region_agree hB [2] [g] 4 rfl rfl rfl fr)
  have hroot : m2._root = (fill ((.L g cg vg sg) :: q) .nil).top := by
    rw [H.2.2.2.2.1]
    refine h.root.trans ?_
    simp only [fill_L, fill_R, fill_append]
    exact fill_top_congr rfl
  have hpath : ShapedPath m2.mem ((.L g cg vg sg) :: q) none :=
    ⟨H.2.2.1, Shaped.agree hs.1.2.1 a_sg, ShapedPath.agree_path hs.1.2.2 a_q⟩
  have htree : Shaped m2.mem (some g) .nil :=
    trivial
  ⟨m2, H.1, h.of_sub (fill_sublist _ (by simp)) H.2.2.2.2.2.1 hroot (shaped_fill.2 ⟨hpath, htree⟩),
    ⟨H.2.2.2.2.2.1, H.2.2.2.2.2.2.1, H.2.2.2.2.2.2.2⟩⟩

/-- The cells after `set_parent_target_pre`, case `leaf_black_L`. -/
theorem pre_leaf_black_L_cells {m : map K V} {p g : Nat}
    {cg : color_type} {vP vg : Option (K × V)} {q1 q2 : ptr}
    (c_p : m.mem p = some { color := black, val := vP, l := none, r := none, parent := some g })
    (c_g : m.mem g = some { color := cg, val := vg, l := some p, r := q1, parent := q2 })
    (d_p_g : p ≠ g) :
    ∃ m2, map.set_parent_target_pre m (some p) none = some (Sum.inr (m2, none, some g, q1)) ∧
      m2.mem p = some { color := black, val := vP, l := none, r := none, parent := some g } ∧
      m2.mem g = some { color := cg, val := vg, l := none, r := q1, parent := q2 } ∧
      (∀ b, b ∉ [g] → m2.mem b = m.mem b) ∧
      m2._root = m._root ∧
      m2.brk = m.brk ∧
      m2._sz = m._sz ∧
      m2._cmp_k = m._cmp_k :=
  have hr0 : m._root = m._root := rfl
  Exists.elim (set_l_step (m := m) c_g none) fun m1 S1 =>
  have w1 : m1.mem g = some { color := cg, val := vg, l := none, r := q1, parent := q2 } := S1.2.1
  have hop : map.set_parent_target_pre m (some p) none = some (Sum.inr (m1, none, some g, q1)) := by
    simp only [map.set_parent_target_pre, map.set_parent_target_fix_call, isOnLeft,
      (get_parent_eq (m := m) c_p : get_parent m (some p) = some (some g)),
      (get_l_eq (m := m) c_g : get_l m (some g) = some (some p)),
      (get_parent_eq (m := m) c_p : get_parent m (some p) = some (some g)), S1.1,
      (get_color_eq (m := m1) ((S1.2.2.1 p d_p_g).trans c_p) : get_color m1 (some p) = some black),
      (get_parent_eq (m := m1) ((S1.2.2.1 p d_p_g).trans c_p) : get_parent m1 (some p) = some (some
        g)),
      (get_l_eq (m := m1) w1 : get_l m1 (some g) = some none),
      (get_r_eq (m := m1) w1 : get_r m1 (some g) = some q1), bind_eq_ub, pure_eq_some,
      ub_bind_some, ne_eq, Option.some.injEq, not_false_eq_true, not_true_eq_false, and_self,
      and_true, true_and, and_false, false_and, if_true, if_false, ite_true, ite_false,
      reduceCtorEq, reduceIte, ite_not, not_not, Bool.not_eq_true, decide_eq_true_eq,
      decide_eq_false_iff_not, decide_True, decide_False, Bool.false_eq_true, eq_self_iff_true,
      Option.isSome_some, Option.isSome_none]
  have h_g : ∀ b, b ∉ [g] → b ≠ g := fun b hb e => hb (e ▸ List.Mem.head _)
  ⟨m1, hop, ((S1.2.2.1 p d_p_g).trans c_p), w1, (fun b hb => (S1.2.2.1 b (h_g b hb))),
    (S1.2.2.2.2.1.trans hr0), S1.2.2.2.1, S1.2.2.2.2.2.1, S1.2.2.2.2.2.2⟩

/-- Member `set_parent_target` up to its call of `fixDoubleBlack`, with a null target at a black left child without children: the call is made for the emptied place. -/
theorem pre_leaf_black_L
    {m : map K V} {p g : Nat} {cg : color_type} {vP vg : Option (K × V)} {sg : tree K V}
    {q : List (frame K V)}
    (h : Rep m (fill ((.L g cg vg sg) :: q)
      (.node p black vP .nil .nil))) :
    ∃ m2, map.set_parent_target_pre m (some p) none = some (Sum.inr (m2, none, some g, sg.top)) ∧
      Rep m2 (fill ((.L g cg vg sg) :: q)
        .nil) ∧ SameAux m m2 :=
  have hs := shaped_fill.1 h.shaped
  have c_p : m.mem p = some { color := black, val := vP, l := none, r := none, parent := some g }
    := hs.2.1
  have c_g : m.mem g = some { color := cg, val := vg, l := some p, r := sg.top, parent := ptop q }
    := hs.1.1
  have hB : (List.flatten [(pbefore q).map Prod.fst, [p], [g], sg.addrs, (pafter q).map
    Prod.fst]).Nodup := by
    have e : (fill ((.L g cg vg sg) :: q) (.node p black vP .nil .nil)).addrs =
        List.flatten [(pbefore q).map Prod.fst, [p], [g], sg.addrs, (pafter q).map Prod.fst] := by
      rw [fill_addrs]
      simp [pbefore, pafter, pbefore_append, pafter_append, tree.addrs]
    exact e ▸ h.nodup
  Exists.elim (pre_leaf_black_L_cells c_p c_g (blocks_ne_at hB 1 2 rfl rfl rfl)) fun m2 H =>
  have fr := H.2.2.2.1
  have a_sg : ∀ b ∈ sg.addrs, m2.mem b = m.mem b :=
    region_agree hB [2] [g] 3 rfl rfl rfl fr
  have a_q : ∀ b ∈ paddrs q, m2.mem b = m.mem b :=
    paddrs_agree (region_agree hB [2] [g] 0 rfl rfl rfl fr)
      (region_agree hB [2] [g] 4 rfl rfl rfl fr)
  have hroot : m2._root = (fill ((.L g cg vg sg) :: q) .nil).top := by
    rw [H.2.2.2.2.1]
    refine h.root.trans ?_
    simp only [fill_L, fill_R, fill_append]
    exact fill_top_congr rfl
  have hpath : ShapedPath m2.mem ((.L g cg vg sg) :: q) none :=
    ⟨H.2.2.1, Shaped.agree hs.1.2.1 a_sg, ShapedPath.agree_path hs.1.2.2 a_q⟩
  have htree : Shaped m2.mem (some g) .nil :=
    trivial
  ⟨m2, H.1, h.of_sub (fill_sublist _ (by simp)) H.2.2.2.2.2.1 hroot (shaped_fill.2 ⟨hpath, htree⟩),
    ⟨H.2.2.2.2.2.1, H.2.2.2.2.2.2.1, H.2.2.2.2.2.2.2⟩⟩

/-- The cells after `set_parent_target_pre`, case `r_red_L`. -/
theorem pre_r_red_L_cells {m : map K V} {p r g : Nat}
    {cr cg : color_type} {vP vr vg : Option (K × V)} {q1 q2 q3 q4 : ptr}
    (c_p : m.mem p = some { color := red, val := vP, l := none, r := some r, parent := some g })
    (c_r : m.mem r = some { color := cr, val := vr, l := q1, r := q2, parent := some p })
    (c_g : m.mem g = some { color := cg, val := vg, l := some p, r := q3, parent := q4 })
    (d_p_g : p ≠ g)
    (d_r_g : r ≠ g)
    (d_p_r : p ≠ r)
    (d_g_r : g ≠ r) :
    ∃ m2, map.set_parent_target_pre m (some p) (some r) = some (Sum.inl m2) ∧
      m2.mem p = some { color := red, val := vP, l := none, r := some r, parent := some g } ∧
      m2.mem r = some { color := cr, val := vr, l := q1, r := q2, parent := some g } ∧
      m2.mem g = some { color := cg, val := vg, l := some r, r := q3, parent := q4 } ∧
      (∀ b, b ∉ [g, r] → m2.mem b = m.mem b) ∧
      m2._root = m._root ∧
      m2.brk = m.brk ∧
      m2._sz = m._sz ∧
      m2._cmp_k = m._cmp_k :=
  have hr0 : m._root = m._root := rfl
  Exists.elim (set_l_step (m := m) c_g (some r)) fun m1 S1 =>
  have w1 : m1.mem g = some { color := cg, val := vg, l := some r, r := q3, parent := q4 } := S1.2.1
  Exists.elim (set_parent_step (m := m1) ((S1.2.2.1 r d_r_g).trans c_r) (some g)) fun m2 S2 =>
  have w2 : m2.mem r = some { color := cr, val := vr, l := q1, r := q2, parent := some g } := S2.2.1
  have k2_p := (S2.2.2.1 p d_p_r).trans ((S1.2.2.1 p d_p_g).trans c_p)
  have hop : map.set_parent_target_pre m (some p) (some r) = some (Sum.inl m2) := by
    simp only [map.set_parent_target_pre, map.set_parent_target_fix_call, isOnLeft,
      (get_parent_eq (m := m) c_p : get_parent m (some p) = some (some g)),
      (get_l_eq (m := m) c_g : get_l m (some g) = some (some p)),
      (get_parent_eq (m := m) c_p : get_parent m (some p) = some (some g)), S1.1,
      (get_parent_eq (m := m1) ((S1.2.2.1 p d_p_g).trans c_p) : get_parent m1 (some p) = some (some
        g)),
      S2.1, (get_color_eq (m := m2) k2_p : get_color m2 (some p) = some red), bind_eq_ub,
      pure_eq_some, ub_bind_some, ne_eq, Option.some.injEq, not_false_eq_true, not_true_eq_false,
      and_self, and_true, true_and, and_false, false_and, if_true, if_false, ite_true, ite_false,
      reduceCtorEq, reduceIte, ite_not, not_not, Bool.not_eq_true, decide_eq_true_eq,
      decide_eq_false_iff_not, decide_True, decide_False, Bool.false_eq_true, eq_self_iff_true,
      Option.isSome_some, Option.isSome_none]
  have h_g : ∀ b, b ∉ [g, r] → b ≠ g := fun b hb e => hb (e ▸ List.Mem.head _)
  have h_r : ∀ b, b ∉ [g, r] → b ≠ r := fun b hb e => hb (e ▸ List.Mem.tail _ (List.Mem.head _))
  ⟨m2, hop, k2_p, w2, ((S2.2.2.1 g d_g_r).trans w1), (fun b hb => ((S2.2.2.1 b (h_r b hb)).trans
    (S1.2.2.1 b (h_g b hb)))), (S2.2.2.2.2.1.trans (S1.2.2.2.2.1.trans hr0)), (S2.2.2.2.1.trans
    S1.2.2.2.1), (S2.2.2.2.2.2.1.trans S1.2.2.2.2.2.1), (S2.2.2.2.2.2.2.trans S1.2.2.2.2.2.2)⟩

/-- Member `set_parent_target` up to its call of `fixDoubleBlack`, at a red left child whose only child is its right child. -/
theorem pre_r_red_L
    {m : map K V} {p r g : Nat} {cr cg : color_type} {vP vr vg : Option (K × V)}
    {rl rr sg : tree K V} {q : List (frame K V)}
    (h : Rep m (fill ((.L g cg vg sg) :: q)
      (.node p red vP .nil (.node r cr vr rl rr)))) :
    ∃ m2, map.set_parent_target_pre m (some p) (some r) = some (Sum.inl m2) ∧
      Rep m2 (fill ((.L g cg vg sg) :: q)
        (.node r cr vr rl rr)) ∧ SameAux m m2 :=
  have hs := shaped_fill.1 h.shaped
  have c_p : m.mem p = some { color := red, val := vP, l := none, r := some r, parent := some g }
    := hs.2.1
  have c_r : m.mem r = some { color := cr, val := vr, l := rl.top, r := rr.top, parent := some p }
    := hs.2.2.2.1
  have c_g : m.mem g = some { color := cg, val := vg, l := some p, r := sg.top, parent := ptop q }
    := hs.1.1
  have hB : (List.flatten [(pbefore q).map Prod.fst, [p], rl.addrs, [r], rr.addrs, [g], sg.addrs,
    (pafter q).map Prod.fst]).Nodup := by
    have e : (fill ((.L g cg vg sg) :: q) (.node p red vP .nil (.node r cr vr rl rr))).addrs =
        List.flatten [(pbefore q).map Prod.fst, [p], rl.addrs, [r], rr.addrs, [g], sg.addrs,
          (pafter q).map Prod.fst] := by
      rw [fill_addrs]
      simp [pbefore, pafter, pbefore_append, pafter_append, tree.addrs]
    exact e ▸ h.nodup
  Exists.elim (pre_r_red_L_cells c_p c_r c_g (blocks_ne_at hB 1 5 rfl rfl rfl) (blocks_ne_at hB 3 5
    rfl rfl rfl) (blocks_ne_at hB 1 3 rfl rfl rfl) (blocks_ne_at hB 5 3 rfl rfl rfl)) fun m2 H =>
  have fr := H.2.2.2.2.1
  have a_rl : ∀ b ∈ rl.addrs, m2.mem b = m.mem b :=
    region_agree hB [5, 3] [g, r] 2 rfl rfl rfl fr
  have a_rr : ∀ b ∈ rr.addrs, m2.mem b = m.mem b :=
    region_agree hB [5, 3] [g, r] 4 rfl rfl rfl fr
  have a_sg : ∀ b ∈ sg.addrs, m2.mem b = m.mem b :=
    region_agree hB [5, 3] [g, r] 6 rfl rfl rfl fr
  have a_q : ∀ b ∈ paddrs q, m2.mem b = m.mem b :=
    paddrs_agree (region_agree hB [5, 3] [g, r] 0 rfl rfl rfl fr)
      (region_agree hB [5, 3] [g, r] 7 rfl rfl rfl fr)
  have hroot : m2._root = (fill ((.L g cg vg sg) :: q) (.node r cr vr rl rr)).top := by
    rw [H.2.2.2.2.2.1]
    refine h.root.trans ?_
    simp only [fill_L, fill_R, fill_append]
    exact fill_top_congr rfl
  have hpath : ShapedPath m2.mem ((.L g cg vg sg) :: q) (some r) :=
    ⟨H.2.2.2.1, Shaped.agree hs.1.2.1 a_sg, ShapedPath.agree_path hs.1.2.2 a_q⟩
  have htree : Shaped m2.mem (some g) (.node r cr vr rl rr) :=
    ⟨H.2.2.1, Shaped.agree hs.2.2.2.2.1 a_rl, Shaped.agree hs.2.2.2.2.2 a_rr⟩
  ⟨m2, H.1, h.of_sub (fill_sublist _ (by simp)) H.2.2.2.2.2.2.1 hroot (shaped_fill.2 ⟨hpath,
    htree⟩), ⟨H.2.2.2.2.2.2.1, H.2.2.2.2.2.2.2.1, H.2.2.2.2.2.2.2.2⟩⟩

/-- The cells after `set_parent_target_pre`, case `r_black_black_L`. -/
theorem pre_r_black_black_L_cells {m : map K V} {p r g : Nat}
    {cg : color_type} {vP vr vg : Option (K × V)} {q1 q2 q3 q4 : ptr}
    (c_p : m.mem p = some { color := black, val := vP, l := none, r := some r, parent := some g })
    (c_r : m.mem r = some { color := black, val := vr, l := q1, r := q2, parent := some p })
    (c_g : m.mem g = some { color := cg, val := vg, l := some p, r := q3, parent := q4 })
    (d_p_g : p ≠ g)
    (d_r_g : r ≠ g)
    (d_p_r : p ≠ r)
    (d_g_r : g ≠ r) :
    ∃ m2, map.set_parent_target_pre m (some p) (some r) = some (Sum.inr (m2, some r, some g, q3)) ∧
      m2.mem p = some { color := black, val := vP, l := none, r := some r, parent := some g } ∧
      m2.mem r = some { color := black, val := vr, l := q1, r := q2, parent := some g } ∧
      m2.mem g = some { color := cg, val := vg, l := some r, r := q3, parent := q4 } ∧
      (∀ b, b ∉ [g, r] → m2.mem b = m.mem b) ∧
      m2._root = m._root ∧
      m2.brk = m.brk ∧
      m2._sz = m._sz ∧
      m2._cmp_k = m._cmp_k :=
  have hr0 : m._root = m._root := rfl
  Exists.elim (set_l_step (m := m) c_g (some r)) fun m1 S1 =>
  have w1 : m1.mem g = some { color := cg, val := vg, l := some r, r := q3, parent := q4 } := S1.2.1
  Exists.elim (set_parent_step (m := m1) ((S1.2.2.1 r d_r_g).trans c_r) (some g)) fun m2 S2 =>
  have w2 : m2.mem r = some { color := black, val := vr, l := q1, r := q2, parent := some g } :=
    S2.2.1
  have k2_p := (S2.2.2.1 p d_p_r).trans ((S1.2.2.1 p d_p_g).trans c_p)
  have hop : map.set_parent_target_pre m (some p) (some r) = some (Sum.inr (m2, some r, some g,
    q3)) := by
    simp only [map.set_parent_target_pre, map.set_parent_target_fix_call, isOnLeft,
      (get_parent_eq (m := m) c_p : get_parent m (some p) = some (some g)),
      (get_l_eq (m := m) c_g : get_l m (some g) = some (some p)),
      (get_parent_eq (m := m) c_p : get_parent m (some p) = some (some g)), S1.1,
      (get_parent_eq (m := m1) ((S1.2.2.1 p d_p_g).trans c_p) : get_parent m1 (some p) = some (some
        g)),
      S2.1, (get_color_eq (m := m2) k2_p : get_color m2 (some p) = some black),
      (get_color_eq (m := m2) w2 : get_color m2 (some r) = some black),
      (get_parent_eq (m := m2) w2 : get_parent m2 (some r) = some (some g)),
      (get_parent_eq (m := m2) k2_p : get_parent m2 (some p) = some (some g)),
      (get_l_eq (m := m2) ((S2.2.2.1 g d_g_r).trans w1) : get_l m2 (some g) = some (some r)),
      (get_r_eq (m := m2) ((S2.2.2.1 g d_g_r).trans w1) : get_r m2 (some g) = some q3),
      bind_eq_ub, pure_eq_some, ub_bind_some, ne_eq, Option.some.injEq, not_false_eq_true,
      not_true_eq_false, and_self, and_true, true_and, and_false, false_and, if_true, if_false,
      ite_true, ite_false, reduceCtorEq, reduceIte, ite_not, not_not, Bool.not_eq_true,
      decide_eq_true_eq, decide_eq_false_iff_not, decide_True, decide_False, Bool.false_eq_true,
      eq_self_iff_true, Option.isSome_some, Option.isSome_none]
  have h_g : ∀ b, b ∉ [g, r] → b ≠ g := fun b hb e => hb (e ▸ List.Mem.head _)
  have h_r : ∀ b, b ∉ [g, r] → b ≠ r := fun b hb e => hb (e ▸ List.Mem.tail _ (List.Mem.head _))
  ⟨m2, hop, k2_p, w2, ((S2.2.2.1 g d_g_r).trans w1), (fun b hb => ((S2.2.2.1 b (h_r b hb)).trans
    (S1.2.2.1 b (h_g b hb)))), (S2.2.2.2.2.1.trans (S1.2.2.2.2.1.trans hr0)), (S2.2.2.2.1.trans
    S1.2.2.2.1), (S2.2.2.2.2.2.1.trans S1.2.2.2.2.2.1), (S2.2.2.2.2.2.2.trans S1.2.2.2.2.2.2)⟩

/-- Member `set_parent_target` up to its call of `fixDoubleBlack`, at a black left child whose only child, the right one, is black: the call is made for the child. -/
theorem pre_r_black_black_L
    {m : map K V} {p r g : Nat} {cg : color_type} {vP vr vg : Option (K × V)}
    {rl rr sg : tree K V} {q : List (frame K V)}
    (h : Rep m (fill ((.L g cg vg sg) :: q)
      (.node p black vP .nil (.node r black vr rl rr)))) :
    ∃ m2, map.set_parent_target_pre m (some p) (some r) = some (Sum.inr (m2, some r, some g, sg.top)) ∧
      Rep m2 (fill ((.L g cg vg sg) :: q)
        (.node r black vr rl rr)) ∧ SameAux m m2 :=
  have hs := shaped_fill.1 h.shaped
  have c_p : m.mem p = some { color := black, val := vP, l := none, r := some r, parent := some g }
    := hs.2.1
  have c_r : m.mem r = some { color := black, val := vr, l := rl.top, r := rr.top, parent := some p
    } := hs.2.2.2.1
  have c_g : m.mem g = some { color := cg, val := vg, l := some p, r := sg.top, parent := ptop q }
    := hs.1.1
  have hB : (List.flatten [(pbefore q).map Prod.fst, [p], rl.addrs, [r], rr.addrs, [g], sg.addrs,
    (pafter q).map Prod.fst]).Nodup := by
    have e : (fill ((.L g cg vg sg) :: q) (.node p black vP .nil (.node r black vr rl rr))).addrs =
        List.flatten [(pbefore q).map Prod.fst, [p], rl.addrs, [r], rr.addrs, [g], sg.addrs,
          (pafter q).map Prod.fst] := by
      rw [fill_addrs]
      simp [pbefore, pafter, pbefore_append, pafter_append, tree.addrs]
    exact e ▸ h.nodup
  Exists.elim (pre_r_black_black_L_cells c_p c_r c_g (blocks_ne_at hB 1 5 rfl rfl rfl)
    (blocks_ne_at hB 3 5 rfl rfl rfl) (blocks_ne_at hB 1 3 rfl rfl rfl) (blocks_ne_at hB 5 3 rfl
    rfl rfl)) fun m2 H =>
  have fr := H.2.2.2.2.1
  have a_rl : ∀ b ∈ rl.addrs, m2.mem b = m.mem b :=
    region_agree hB [5, 3] [g, r] 2 rfl rfl rfl fr
  have a_rr : ∀ b ∈ rr.addrs, m2.mem b = m.mem b :=
    region_agree hB [5, 3] [g, r] 4 rfl rfl rfl fr
  have a_sg : ∀ b ∈ sg.addrs, m2.mem b = m.mem b :=
    region_agree hB [5, 3] [g, r] 6 rfl rfl rfl fr
  have a_q : ∀ b ∈ paddrs q, m2.mem b = m.mem b :=
    paddrs_agree (region_agree hB [5, 3] [g, r] 0 rfl rfl rfl fr)
      (region_agree hB [5, 3] [g, r] 7 rfl rfl rfl fr)
  have hroot : m2._root = (fill ((.L g cg vg sg) :: q) (.node r black vr rl rr)).top := by
    rw [H.2.2.2.2.2.1]
    refine h.root.trans ?_
    simp only [fill_L, fill_R, fill_append]
    exact fill_top_congr rfl
  have hpath : ShapedPath m2.mem ((.L g cg vg sg) :: q) (some r) :=
    ⟨H.2.2.2.1, Shaped.agree hs.1.2.1 a_sg, ShapedPath.agree_path hs.1.2.2 a_q⟩
  have htree : Shaped m2.mem (some g) (.node r black vr rl rr) :=
    ⟨H.2.2.1, Shaped.agree hs.2.2.2.2.1 a_rl, Shaped.agree hs.2.2.2.2.2 a_rr⟩
  ⟨m2, H.1, h.of_sub (fill_sublist _ (by simp)) H.2.2.2.2.2.2.1 hroot (shaped_fill.2 ⟨hpath,
    htree⟩), ⟨H.2.2.2.2.2.2.1, H.2.2.2.2.2.2.2.1, H.2.2.2.2.2.2.2.2⟩⟩

/-- The cells after `set_parent_target_pre`, case `r_black_red_L`. -/
theorem pre_r_black_red_L_cells {m : map K V} {p r g : Nat}
    {cg : color_type} {vP vr vg : Option (K × V)} {q1 q2 q3 q4 : ptr}
    (c_p : m.mem p = some { color := black, val := vP, l := none, r := some r, parent := some g })
    (c_r : m.mem r = some { color := red, val := vr, l := q1, r := q2, parent := some p })
    (c_g : m.mem g = some { color := cg, val := vg, l := some p, r := q3, parent := q4 })
    (d_p_g : p ≠ g)
    (d_r_g : r ≠ g)
    (d_p_r : p ≠ r)
    (d_g_r : g ≠ r) :
    ∃ m2, map.set_parent_target_pre m (some p) (some r) = some (Sum.inl m2) ∧
      m2.mem p = some { color := black, val := vP, l := none, r := some r, parent := some g } ∧
      m2.mem r = some { color := black, val := vr, l := q1, r := q2, parent := some g } ∧
      m2.mem g = some { color := cg, val := vg, l := some r, r := q3, parent := q4 } ∧
      (∀ b, b ∉ [g, r] → m2.mem b = m.mem b) ∧
      m2._root = m._root ∧
      m2.brk = m.brk ∧
      m2._sz = m._sz ∧
      m2._cmp_k = m._cmp_k :=
  have hr0 : m._root = m._root := rfl
  Exists.elim (set_l_step (m := m) c_g (some r)) fun m1 S1 =>
  have w1 : m1.mem g = some { color := cg, val := vg, l := some r, r := q3, parent := q4 } := S1.2.1
  Exists.elim (set_parent_step (m := m1) ((S1.2.2.1 r d_r_g).trans c_r) (some g)) fun m2 S2 =>
  have w2 : m2.mem r = some { color := red, val := vr, l := q1, r := q2, parent := some g } :=
    S2.2.1
  have k2_p := (S2.2.2.1 p d_p_r).trans ((S1.2.2.1 p d_p_g).trans c_p)
  Exists.elim (set_color_step (m := m2) w2 black) fun m3 S3 =>
  have w3 : m3.mem r = some { color := black, val := vr, l := q1, r := q2, parent := some g } :=
    S3.2.1
  have xr3 : m3._root = m._root := S3.2.2.2.2.1.trans (S2.2.2.2.2.1.trans (S1.2.2.2.2.1.trans hr0))
  have k3_g := (S3.2.2.1 g d_g_r).trans ((S2.2.2.1 g d_g_r).trans w1)
  have hop : map.set_parent_target_pre m (some p) (some r) = some (Sum.inl m3) := by
    simp only [map.set_parent_target_pre, map.set_parent_target_fix_call, isOnLeft,
      (get_parent_eq (m := m) c_p : get_parent m (some p) = some (some g)),
      (get_l_eq (m := m) c_g : get_l m (some g) = some (some p)),
      (get_parent_eq (m := m) c_p : get_parent m (some p) = some (some g)), S1.1,
      (get_parent_eq (m := m1) ((S1.2.2.1 p d_p_g).trans c_p) : get_parent m1 (some p) = some (some
        g)),
      S2.1, (get_color_eq (m := m2) k2_p : get_color m2 (some p) = some black),
      (get_color_eq (m := m2) w2 : get_color m2 (some r) = some red), S3.1, bind_eq_ub,
      pure_eq_some, ub_bind_some, ne_eq, Option.some.injEq, not_false_eq_true, not_true_eq_false,
      and_self, and_true, true_and, and_false, false_and, if_true, if_false, ite_true, ite_false,
      reduceCtorEq, reduceIte, ite_not, not_not, Bool.not_eq_true, decide_eq_true_eq,
      decide_eq_false_iff_not, decide_True, decide_False, Bool.false_eq_true, eq_self_iff_true,
      Option.isSome_some, Option.isSome_none]
  have h_g : ∀ b, b ∉ [g, r] → b ≠ g := fun b hb e => hb (e ▸ List.Mem.head _)
  have h_r : ∀ b, b ∉ [g, r] → b ≠ r := fun b hb e => hb (e ▸ List.Mem.tail _ (List.Mem.head _))
  ⟨m3, hop, ((S3.2.2.1 p d_p_r).trans k2_p), w3, k3_g, (fun b hb => ((S3.2.2.1 b (h_r b hb)).trans
    ((S2.2.2.1 b (h_r b hb)).trans (S1.2.2.1 b (h_g b hb))))), xr3, (S3.2.2.2.1.trans
    (S2.2.2.2.1.trans S1.2.2.2.1)), (S3.2.2.2.2.2.1.trans (S2.2.2.2.2.2.1.trans S1.2.2.2.2.2.1)),
    (S3.2.2.2.2.2.2.trans (S2.2.2.2.2.2.2.trans S1.2.2.2.2.2.2))⟩

/-- Member `set_parent_target` up to its call of `fixDoubleBlack`, at a black left child whose only child, the right one, is red: the child takes the place and becomes black. -/
theorem pre_r_black_red_L
    {m : map K V} {p r g : Nat} {cg : color_type} {vP vr vg : Option (K × V)}
    {rl rr sg : tree K V} {q : List (frame K V)}
    (h : Rep m (fill ((.L g cg vg sg) :: q)
      (.node p black vP .nil (.node r red vr rl rr)))) :
    ∃ m2, map.set_parent_target_pre m (some p) (some r) = some (Sum.inl m2) ∧
      Rep m2 (fill ((.L g cg vg sg) :: q)
        (.node r black vr rl rr)) ∧ SameAux m m2 :=
  have hs := shaped_fill.1 h.shaped
  have c_p : m.mem p = some { color := black, val := vP, l := none, r := some r, parent := some g }
    := hs.2.1
  have c_r : m.mem r = some { color := red, val := vr, l := rl.top, r := rr.top, parent := some p }
    := hs.2.2.2.1
  have c_g : m.mem g = some { color := cg, val := vg, l := some p, r := sg.top, parent := ptop q }
    := hs.1.1
  have hB : (List.flatten [(pbefore q).map Prod.fst, [p], rl.addrs, [r], rr.addrs, [g], sg.addrs,
    (pafter q).map Prod.fst]).Nodup := by
    have e : (fill ((.L g cg vg sg) :: q) (.node p black vP .nil (.node r red vr rl rr))).addrs =
        List.flatten [(pbefore q).map Prod.fst, [p], rl.addrs, [r], rr.addrs, [g], sg.addrs,
          (pafter q).map Prod.fst] := by
      rw [fill_addrs]
      simp [pbefore, pafter, pbefore_append, pafter_append, tree.addrs]
    exact e ▸ h.nodup
  Exists.elim (pre_r_black_red_L_cells c_p c_r c_g (blocks_ne_at hB 1 5 rfl rfl rfl) (blocks_ne_at
    hB 3 5 rfl rfl rfl) (blocks_ne_at hB 1 3 rfl rfl rfl) (blocks_ne_at hB 5 3 rfl rfl rfl)) fun m2
    H =>
  have fr := H.2.2.2.2.1
  have a_rl : ∀ b ∈ rl.addrs, m2.mem b = m.mem b :=
    region_agree hB [5, 3] [g, r] 2 rfl rfl rfl fr
  have a_rr : ∀ b ∈ rr.addrs, m2.mem b = m.mem b :=
    region_agree hB [5, 3] [g, r] 4 rfl rfl rfl fr
  have a_sg : ∀ b ∈ sg.addrs, m2.mem b = m.mem b :=
    region_agree hB [5, 3] [g, r] 6 rfl rfl rfl fr
  have a_q : ∀ b ∈ paddrs q, m2.mem b = m.mem b :=
    paddrs_agree (region_agree hB [5, 3] [g, r] 0 rfl rfl rfl fr)
      (region_agree hB [5, 3] [g, r] 7 rfl rfl rfl fr)
  have hroot : m2._root = (fill ((.L g cg vg sg) :: q) (.node r black vr rl rr)).top := by
    rw [H.2.2.2.2.2.1]
    refine h.root.trans ?_
    simp only [fill_L, fill_R, fill_append]
    exact fill_top_congr rfl
  have hpath : ShapedPath m2.mem ((.L g cg vg sg) :: q) (some r) :=
    ⟨H.2.2.2.1, Shaped.agree hs.1.2.1 a_sg, ShapedPath.agree_path hs.1.2.2 a_q⟩
  have htree : Shaped m2.mem (some g) (.node r black vr rl rr) :=
    ⟨H.2.2.1, Shaped.agree hs.2.2.2.2.1 a_rl, Shaped.agree hs.2.2.2.2.2 a_rr⟩
  ⟨m2, H.1, h.of_sub (fill_sublist _ (by simp)) H.2.2.2.2.2.2.1 hroot (shaped_fill.2 ⟨hpath,
    htree⟩), ⟨H.2.2.2.2.2.2.1, H.2.2.2.2.2.2.2.1, H.2.2.2.2.2.2.2.2⟩⟩

/-- The cells after `set_parent_target_pre`, case `l_red_L`. -/
theorem pre_l_red_L_cells {m : map K V} {p r g : Nat}
    {cr cg : color_type} {vP vr vg : Option (K × V)} {q1 q2 q3 q4 : ptr}
    (c_p : m.mem p = some { color := red, val := vP, l := some r, r := none, parent := some g })
    (c_r : m.mem r = some { color := cr, val := vr, l := q1, r := q2, parent := some p })
    (c_g : m.mem g = some { color := cg, val := vg, l := some p, r := q3, parent := q4 })
    (d_p_g : p ≠ g)
    (d_r_g : r ≠ g)
    (d_p_r : p ≠ r)
    (d_g_r : g ≠ r) :
    ∃ m2, map.set_parent_target_pre m (some p) (some r) = some (Sum.inl m2) ∧
      m2.mem p = some { color := red, val := vP, l := some r, r := none, parent := some g } ∧
      m2.mem r = some { color := cr, val := vr, l := q1, r := q2, parent := some g } ∧
      m2.mem g = some { color := cg, val := vg, l := some r, r := q3, parent := q4 } ∧
      (∀ b, b ∉ [g, r] → m2.mem b = m.mem b) ∧
      m2._root = m._root ∧
      m2.brk = m.brk ∧
      m2._sz = m._sz ∧
      m2._cmp_k = m._cmp_k :=
  have hr0 : m._root = m._root := rfl
  Exists.elim (set_l_step (m := m) c_g (some r)) fun m1 S1 =>
  have w1 : m1.mem g = some { color := cg, val := vg, l := some r, r := q3, parent := q4 } := S1.2.1
  Exists.elim (set_parent_step (m := m1) ((S1.2.2.1 r d_r_g).trans c_r) (some g)) fun m2 S2 =>
  have w2 : m2.mem r = some { color := cr, val := vr, l := q1, r := q2, parent := some g } := S2.2.1
  have k2_p := (S2.2.2.1 p d_p_r).trans ((S1.2.2.1 p d_p_g).trans c_p)
  have hop : map.set_parent_target_pre m (some p) (some r) = some (Sum.inl m2) := by
    simp only [map.set_parent_target_pre, map.set_parent_target_fix_call, isOnLeft,
      (get_parent_eq (m := m) c_p : get_parent m (some p) = some (some g)),
      (get_l_eq (m := m) c_g : get_l m (some g) = some (some p)),
      (get_parent_eq (m := m) c_p : get_parent m (some p) = some (some g)), S1.1,
      (get_parent_eq (m := m1) ((S1.2.2.1 p d_p_g).trans c_p) : get_parent m1 (some p) = some (some
        g)),
      S2.1, (get_color_eq (m := m2) k2_p : get_color m2 (some p) = some red), bind_eq_ub,
      pure_eq_some, ub_bind_some, ne_eq, Option.some.injEq, not_false_eq_true, not_true_eq_false,
      and_self, and_true, true_and, and_false, false_and, if_true, if_false, ite_true, ite_false,
      reduceCtorEq, reduceIte, ite_not, not_not, Bool.not_eq_true, decide_eq_true_eq,
      decide_eq_false_iff_not, decide_True, decide_False, Bool.false_eq_true, eq_self_iff_true,
      Option.isSome_some, Option.isSome_none]
  have h_g : ∀ b, b ∉ [g, r] → b ≠ g := fun b hb e => hb (e ▸ List.Mem.head _)
  have h_r : ∀ b, b ∉ [g, r] → b ≠ r := fun b hb e => hb (e ▸ List.Mem.tail _ (List.Mem.head _))
  ⟨m2, hop, k2_p, w2, ((S2.2.2.1 g d_g_r).trans w1), (fun b hb => ((S2.2.2.1 b (h_r b hb)).trans
    (S1.2.2.1 b (h_g b hb)))), (S2.2.2.2.2.1.trans (S1.2.2.2.2.1.trans hr0)), (S2.2.2.2.1.trans
    S1.2.2.2.1), (S2.2.2.2.2.2.1.trans S1.2.2.2.2.2.1), (S2.2.2.2.2.2.2.trans S1.2.2.2.2.2.2)⟩

/-- Member `set_parent_target` up to its call of `fixDoubleBlack`, at a red left child whose only child is its left child. -/
theorem pre_l_red_L
    {m : map K V} {p r g : Nat} {cr cg : color_type} {vP vr vg : Option (K × V)}
    {rl rr sg : tree K V} {q : List (frame K V)}
    (h : Rep m (fill ((.L g cg vg sg) :: q)
      (.node p red vP (.node r cr vr rl rr) .nil))) :
    ∃ m2, map.set_parent_target_pre m (some p) (some r) = some (Sum.inl m2) ∧
      Rep m2 (fill ((.L g cg vg sg) :: q)
        (.node r cr vr rl rr)) ∧ SameAux m m2 :=
  have hs := shaped_fill.1 h.shaped
  have c_p : m.mem p = some { color := red, val := vP, l := some r, r := none, parent := some g }
    := hs.2.1
  have c_r : m.mem r = some { color := cr, val := vr, l := rl.top, r := rr.top, parent := some p }
    := hs.2.2.1.1
  have c_g : m.mem g = some { color := cg, val := vg, l := some p, r := sg.top, parent := ptop q }
    := hs.1.1
  have hB : (List.flatten [(pbefore q).map Prod.fst, rl.addrs, [r], rr.addrs, [p], [g], sg.addrs,
    (pafter q).map Prod.fst]).Nodup := by
    have e : (fill ((.L g cg vg sg) :: q) (.node p red vP (.node r cr vr rl rr) .nil)).addrs =
        List.flatten [(pbefore q).map Prod.fst, rl.addrs, [r], rr.addrs, [p], [g], sg.addrs,
          (pafter q).map Prod.fst] := by
      rw [fill_addrs]
      simp [pbefore, pafter, pbefore_append, pafter_append, tree.addrs]
    exact e ▸ h.nodup
  Exists.elim (pre_l_red_L_cells c_p c_r c_g (blocks_ne_at hB 4 5 rfl rfl rfl) (blocks_ne_at hB 2 5
    rfl rfl rfl) (blocks_ne_at hB 4 2 rfl rfl rfl) (blocks_ne_at hB 5 2 rfl rfl rfl)) fun m2 H =>
  have fr := H.2.2.2.2.1
  have a_rl : ∀ b ∈ rl.addrs, m2.mem b = m.mem b :=
    region_agree hB [5, 2] [g, r] 1 rfl rfl rfl fr
  have a_rr : ∀ b ∈ rr.addrs, m2.mem b = m.mem b :=
    region_agree hB [5, 2] [g, r] 3 rfl rfl rfl fr
  have a_sg : ∀ b ∈ sg.addrs, m2.mem b = m.mem b :=
    region_agree hB [5, 2] [g, r] 6 rfl rfl rfl fr
  have a_q : ∀ b ∈ paddrs q, m2.mem b = m.mem b :=
    paddrs_agree (region_agree hB [5, 2] [g, r] 0 rfl rfl rfl fr)
      (region_agree hB [5, 2] [g, r] 7 rfl rfl rfl fr)
  have hroot : m2._root = (fill ((.L g cg vg sg) :: q) (.node r cr vr rl rr)).top := by
    rw [H.2.2.2.2.2.1]
    refine h.root.trans ?_
    simp only [fill_L, fill_R, fill_append]
    exact fill_top_congr rfl
  have hpath : ShapedPath m2.mem ((.L g cg vg sg) :: q) (some r) :=
    ⟨H.2.2.2.1, Shaped.agree hs.1.2.1 a_sg, ShapedPath.agree_path hs.1.2.2 a_q⟩
  have htree : Shaped m2.mem (some g) (.node r cr vr rl rr) :=
    ⟨H.2.2.1, Shaped.agree hs.2.2.1.2.1 a_rl, Shaped.agree hs.2.2.1.2.2 a_rr⟩
  ⟨m2, H.1, h.of_sub (fill_sublist _ (by simp)) H.2.2.2.2.2.2.1 hroot (shaped_fill.2 ⟨hpath,
    htree⟩), ⟨H.2.2.2.2.2.2.1, H.2.2.2.2.2.2.2.1, H.2.2.2.2.2.2.2.2⟩⟩

/-- The cells after `set_parent_target_pre`, case `l_black_black_L`. -/
theorem pre_l_black_black_L_cells {m : map K V} {p r g : Nat}
    {cg : color_type} {vP vr vg : Option (K × V)} {q1 q2 q3 q4 : ptr}
    (c_p : m.mem p = some { color := black, val := vP, l := some r, r := none, parent := some g })
    (c_r : m.mem r = some { color := black, val := vr, l := q1, r := q2, parent := some p })
    (c_g : m.mem g = some { color := cg, val := vg, l := some p, r := q3, parent := q4 })
    (d_p_g : p ≠ g)
    (d_r_g : r ≠ g)
    (d_p_r : p ≠ r)
    (d_g_r : g ≠ r) :
    ∃ m2, map.set_parent_target_pre m (some p) (some r) = some (Sum.inr (m2, some r, some g, q3)) ∧
      m2.mem p = some { color := black, val := vP, l := some r, r := none, parent := some g } ∧
      m2.mem r = some { color := black, val := vr, l := q1, r := q2, parent := some g } ∧
      m2.mem g = some { color := cg, val := vg, l := some r, r := q3, parent := q4 } ∧
      (∀ b, b ∉ [g, r] → m2.mem b = m.mem b) ∧
      m2._root = m._root ∧
      m2.brk = m.brk ∧
      m2._sz = m._sz ∧
      m2._cmp_k = m._cmp_k :=
  have hr0 : m._root = m._root := rfl
  Exists.elim (set_l_step (m := m) c_g (some r)) fun m1 S1 =>
  have w1 : m1.mem g = some { color := cg, val := vg, l := some r, r := q3, parent := q4 } := S1.2.1
  Exists.elim (set_parent_step (m := m1) ((S1.2.2.1 r d_r_g).trans c_r) (some g)) fun m2 S2 =>
  have w2 : m2.mem r = some { color := black, val := vr, l := q1, r := q2, parent := some g } :=
    S2.2.1
  have k2_p := (S2.2.2.1 p d_p_r).trans ((S1.2.2.1 p d_p_g).trans c_p)
  have hop : map.set_parent_target_pre m (some p) (some r) = some (Sum.inr (m2, some r, some g,
    q3)) := by
    simp only [map.set_parent_target_pre, map.set_parent_target_fix_call, isOnLeft,
      (get_parent_eq (m := m) c_p : get_parent m (some p) = some (some g)),
      (get_l_eq (m := m) c_g : get_l m (some g) = some (some p)),
      (get_parent_eq (m := m) c_p : get_parent m (some p) = some (some g)), S1.1,
      (get_parent_eq (m := m1) ((S1.2.2.1 p d_p_g).trans c_p) : get_parent m1 (some p) = some (some
        g)),
      S2.1, (get_color_eq (m := m2) k2_p : get_color m2 (some p) = some black),
      (get_color_eq (m := m2) w2 : get_color m2 (some r) = some black),
      (get_parent_eq (m := m2) w2 : get_parent m2 (some r) = some (some g)),
      (get_parent_eq (m := m2) k2_p : get_parent m2 (some p) = some (some g)),
      (get_l_eq (m := m2) ((S2.2.2.1 g d_g_r).trans w1) : get_l m2 (some g) = some (some r)),
      (get_r_eq (m := m2) ((S2.2.2.1 g d_g_r).trans w1) : get_r m2 (some g) = some q3),
      bind_eq_ub, pure_eq_some, ub_bind_some, ne_eq, Option.some.injEq, not_false_eq_true,
      not_true_eq_false, and_self, and_true, true_and, and_false, false_and, if_true, if_false,
      ite_true, ite_false, reduceCtorEq, reduceIte, ite_not, not_not, Bool.not_eq_true,
      decide_eq_true_eq, decide_eq_false_iff_not, decide_True, decide_False, Bool.false_eq_true,
      eq_self_iff_true, Option.isSome_some, Option.isSome_none]
  have h_g : ∀ b, b ∉ [g, r] → b ≠ g := fun b hb e => hb (e ▸ List.Mem.head _)
  have h_r : ∀ b, b ∉ [g, r] → b ≠ r := fun b hb e => hb (e ▸ List.Mem.tail _ (List.Mem.head _))
  ⟨m2, hop, k2_p, w2, ((S2.2.2.1 g d_g_r).trans w1), (fun b hb => ((S2.2.2.1 b (h_r b hb)).trans
    (S1.2.2.1 b (h_g b hb)))), (S2.2.2.2.2.1.trans (S1.2.2.2.2.1.trans hr0)), (S2.2.2.2.1.trans
    S1.2.2.2.1), (S2.2.2.2.2.2.1.trans S1.2.2.2.2.2.1), (S2.2.2.2.2.2.2.trans S1.2.2.2.2.2.2)⟩

/-- Member `set_parent_target` up to its call of `fixDoubleBlack`, at a black left child whose only child, the left one, is black: the call is made for the child. -/
theorem pre_l_black_black_L
    {m : map K V} {p r g : Nat} {cg : color_type} {vP vr vg : Option (K × V)}
    {rl rr sg : tree K V} {q : List (frame K V)}
    (h : Rep m (fill ((.L g cg vg sg) :: q)
      (.node p black vP (.node r black vr rl rr) .nil))) :
    ∃ m2, map.set_parent_target_pre m (some p) (some r) = some (Sum.inr (m2, some r, some g, sg.top)) ∧
      Rep m2 (fill ((.L g cg vg sg) :: q)
        (.node r black vr rl rr)) ∧ SameAux m m2 :=
  have hs := shaped_fill.1 h.shaped
  have c_p : m.mem p = some { color := black, val := vP, l := some r, r := none, parent := some g }
    := hs.2.1
  have c_r : m.mem r = some { color := black, val := vr, l := rl.top, r := rr.top, parent := some p
    } := hs.2.2.1.1
  have c_g : m.mem g = some { color := cg, val := vg, l := some p, r := sg.top, parent := ptop q }
    := hs.1.1
  have hB : (List.flatten [(pbefore q).map Prod.fst, rl.addrs, [r], rr.addrs, [p], [g], sg.addrs,
    (pafter q).map Prod.fst]).Nodup := by
    have e : (fill ((.L g cg vg sg) :: q) (.node p black vP (.node r black vr rl rr) .nil)).addrs =
        List.flatten [(pbefore q).map Prod.fst, rl.addrs, [r], rr.addrs, [p], [g], sg.addrs,
          (pafter q).map Prod.fst] := by
      rw [fill_addrs]
      simp [pbefore, pafter, pbefore_append, pafter_append, tree.addrs]
    exact e ▸ h.nodup
  Exists.elim (pre_l_black_black_L_cells c_p c_r c_g (blocks_ne_at hB 4 5 rfl rfl rfl)
    (blocks_ne_at hB 2 5 rfl rfl rfl) (blocks_ne_at hB 4 2 rfl rfl rfl) (blocks_ne_at hB 5 2 rfl
    rfl rfl)) fun m2 H =>
  have fr := H.2.2.2.2.1
  have a_rl : ∀ b ∈ rl.addrs, m2.mem b = m.mem b :=
    region_agree hB [5, 2] [g, r] 1 rfl rfl rfl fr
  have a_rr : ∀ b ∈ rr.addrs, m2.mem b = m.mem b :=
    region_agree hB [5, 2] [g, r] 3 rfl rfl rfl fr
  have a_sg : ∀ b ∈ sg.addrs, m2.mem b = m.mem b :=
    region_agree hB [5, 2] [g, r] 6 rfl rfl rfl fr
  have a_q : ∀ b ∈ paddrs q, m2.mem b = m.mem b :=
    paddrs_agree (region_agree hB [5, 2] [g, r] 0 rfl rfl rfl fr)
      (region_agree hB [5, 2] [g, r] 7 rfl rfl rfl fr)
  have hroot : m2._root = (fill ((.L g cg vg sg) :: q) (.node r black vr rl rr)).top := by
    rw [H.2.2.2.2.2.1]
    refine h.root.trans ?_
    simp only [fill_L, fill_R, fill_append]
    exact fill_top_congr rfl
  have hpath : ShapedPath m2.mem ((.L g cg vg sg) :: q) (some r) :=
    ⟨H.2.2.2.1, Shaped.agree hs.1.2.1 a_sg, ShapedPath.agree_path hs.1.2.2 a_q⟩
  have htree : Shaped m2.mem (some g) (.node r black vr rl rr) :=
    ⟨H.2.2.1, Shaped.agree hs.2.2.1.2.1 a_rl, Shaped.agree hs.2.2.1.2.2 a_rr⟩
  ⟨m2, H.1, h.of_sub (fill_sublist _ (by simp)) H.2.2.2.2.2.2.1 hroot (shaped_fill.2 ⟨hpath,
    htree⟩), ⟨H.2.2.2.2.2.2.1, H.2.2.2.2.2.2.2.1, H.2.2.2.2.2.2.2.2⟩⟩

/-- The cells after `set_parent_target_pre`, case `l_black_red_L`. -/
theorem pre_l_black_red_L_cells {m : map K V} {p r g : Nat}
    {cg : color_type} {vP vr vg : Option (K × V)} {q1 q2 q3 q4 : ptr}
    (c_p : m.mem p = some { color := black, val := vP, l := some r, r := none, parent := some g })
    (c_r : m.mem r = some { color := red, val := vr, l := q1, r := q2, parent := some p })
    (c_g : m.mem g = some { color := cg, val := vg, l := some p, r := q3, parent := q4 })
    (d_p_g : p ≠ g)
    (d_r_g : r ≠ g)
    (d_p_r : p ≠ r)
    (d_g_r : g ≠ r) :
    ∃ m2, map.set_parent_target_pre m (some p) (some r) = some (Sum.inl m2) ∧
      m2.mem p = some { color := black, val := vP, l := some r, r := none, parent := some g } ∧
      m2.mem r = some { color := black, val := vr, l := q1, r := q2, parent := some g } ∧
      m2.mem g = some { color := cg, val := vg, l := some r, r := q3, parent := q4 } ∧
      (∀ b, b ∉ [g, r] → m2.mem b = m.mem b) ∧
      m2._root = m._root ∧
      m2.brk = m.brk ∧
      m2._sz = m._sz ∧
      m2._cmp_k = m._cmp_k :=
  have hr0 : m._root = m._root := rfl
  Exists.elim (set_l_step (m := m) c_g (some r)) fun m1 S1 =>
  have w1 : m1.mem g = some { color := cg, val := vg, l := some r, r := q3, parent := q4 } := S1.2.1
  Exists.elim (set_parent_step (m := m1) ((S1.2.2.1 r d_r_g).trans c_r) (some g)) fun m2 S2 =>
  have w2 : m2.mem r = some { color := red, val := vr, l := q1, r := q2, parent := some g } :=
    S2.2.1
  have k2_p := (S2.2.2.1 p d_p_r).trans ((S1.2.2.1 p d_p_g).trans c_p)
  Exists.elim (set_color_step (m := m2) w2 black) fun m3 S3 =>
  have w3 : m3.mem r = some { color := black, val := vr, l := q1, r := q2, parent := some g } :=
    S3.2.1
  have xr3 : m3._root = m._root := S3.2.2.2.2.1.trans (S2.2.2.2.2.1.trans (S1.2.2.2.2.1.trans hr0))
  have k3_g := (S3.2.2.1 g d_g_r).trans ((S2.2.2.1 g d_g_r).trans w1)
  have hop : map.set_parent_target_pre m (some p) (some r) = some (Sum.inl m3) := by
    simp only [map.set_parent_target_pre, map.set_parent_target_fix_call, isOnLeft,
      (get_parent_eq (m := m) c_p : get_parent m (some p) = some (some g)),
      (get_l_eq (m := m) c_g : get_l m (some g) = some (some p)),
      (get_parent_eq (m := m) c_p : get_parent m (some p) = some (some g)), S1.1,
      (get_parent_eq (m := m1) ((S1.2.2.1 p d_p_g).trans c_p) : get_parent m1 (some p) = some (some
        g)),
      S2.1, (get_color_eq (m := m2) k2_p : get_color m2 (some p) = some black),
      (get_color_eq (m := m2) w2 : get_color m2 (some r) = some red), S3.1, bind_eq_ub,
      pure_eq_some, ub_bind_some, ne_eq, Option.some.injEq, not_false_eq_true, not_true_eq_false,
      and_self, and_true, true_and, and_false, false_and, if_true, if_false, ite_true, ite_false,
      reduceCtorEq, reduceIte, ite_not, not_not, Bool.not_eq_true, decide_eq_true_eq,
      decide_eq_false_iff_not, decide_True, decide_False, Bool.false_eq_true, eq_self_iff_true,
      Option.isSome_some, Option.isSome_none]
  have h_g : ∀ b, b ∉ [g, r] → b ≠ g := fun b hb e => hb (e ▸ List.Mem.head _)
  have h_r : ∀ b, b ∉ [g, r] → b ≠ r := fun b hb e => hb (e ▸ List.Mem.tail _ (List.Mem.head _))
  ⟨m3, hop, ((S3.2.2.1 p d_p_r).trans k2_p), w3, k3_g, (fun b hb => ((S3.2.2.1 b (h_r b hb)).trans
    ((S2.2.2.1 b (h_r b hb)).trans (S1.2.2.1 b (h_g b hb))))), xr3, (S3.2.2.2.1.trans
    (S2.2.2.2.1.trans S1.2.2.2.1)), (S3.2.2.2.2.2.1.trans (S2.2.2.2.2.2.1.trans S1.2.2.2.2.2.1)),
    (S3.2.2.2.2.2.2.trans (S2.2.2.2.2.2.2.trans S1.2.2.2.2.2.2))⟩

/-- Member `set_parent_target` up to its call of `fixDoubleBlack`, at a black left child whose only child, the left one, is red: the child takes the place and becomes black. -/
theorem pre_l_black_red_L
    {m : map K V} {p r g : Nat} {cg : color_type} {vP vr vg : Option (K × V)}
    {rl rr sg : tree K V} {q : List (frame K V)}
    (h : Rep m (fill ((.L g cg vg sg) :: q)
      (.node p black vP (.node r red vr rl rr) .nil))) :
    ∃ m2, map.set_parent_target_pre m (some p) (some r) = some (Sum.inl m2) ∧
      Rep m2 (fill ((.L g cg vg sg) :: q)
        (.node r black vr rl rr)) ∧ SameAux m m2 :=
  have hs := shaped_fill.1 h.shaped
  have c_p : m.mem p = some { color := black, val := vP, l := some r, r := none, parent := some g }
    := hs.2.1
  have c_r : m.mem r = some { color := red, val := vr, l := rl.top, r := rr.top, parent := some p }
    := hs.2.2.1.1
  have c_g : m.mem g = some { color := cg, val := vg, l := some p, r := sg.top, parent := ptop q }
    := hs.1.1
  have hB : (List.flatten [(pbefore q).map Prod.fst, rl.addrs, [r], rr.addrs, [p], [g], sg.addrs,
    (pafter q).map Prod.fst]).Nodup := by
    have e : (fill ((.L g cg vg sg) :: q) (.node p black vP (.node r red vr rl rr) .nil)).addrs =
        List.flatten [(pbefore q).map Prod.fst, rl.addrs, [r], rr.addrs, [p], [g], sg.addrs,
          (pafter q).map Prod.fst] := by
      rw [fill_addrs]
      simp [pbefore, pafter, pbefore_append, pafter_append, tree.addrs]
    exact e ▸ h.nodup
  Exists.elim (pre_l_black_red_L_cells c_p c_r c_g (blocks_ne_at hB 4 5 rfl rfl rfl) (blocks_ne_at
    hB 2 5 rfl rfl rfl) (blocks_ne_at hB 4 2 rfl rfl rfl) (blocks_ne_at hB 5 2 rfl rfl rfl)) fun m2
    H =>
  have fr := H.2.2.2.2.1
  have a_rl : ∀ b ∈ rl.addrs, m2.mem b = m.mem b :=
    region_agree hB [5, 2] [g, r] 1 rfl rfl rfl fr
  have a_rr : ∀ b ∈ rr.addrs, m2.mem b = m.mem b :=
    region_agree hB [5, 2] [g, r] 3 rfl rfl rfl fr
  have a_sg : ∀ b ∈ sg.addrs, m2.mem b = m.mem b :=
    region_agree hB [5, 2] [g, r] 6 rfl rfl rfl fr
  have a_q : ∀ b ∈ paddrs q, m2.mem b = m.mem b :=
    paddrs_agree (region_agree hB [5, 2] [g, r] 0 rfl rfl rfl fr)
      (region_agree hB [5, 2] [g, r] 7 rfl rfl rfl fr)
  have hroot : m2._root = (fill ((.L g cg vg sg) :: q) (.node r black vr rl rr)).top := by
    rw [H.2.2.2.2.2.1]
    refine h.root.trans ?_
    simp only [fill_L, fill_R, fill_append]
    exact fill_top_congr rfl
  have hpath : ShapedPath m2.mem ((.L g cg vg sg) :: q) (some r) :=
    ⟨H.2.2.2.1, Shaped.agree hs.1.2.1 a_sg, ShapedPath.agree_path hs.1.2.2 a_q⟩
  have htree : Shaped m2.mem (some g) (.node r black vr rl rr) :=
    ⟨H.2.2.1, Shaped.agree hs.2.2.1.2.1 a_rl, Shaped.agree hs.2.2.1.2.2 a_rr⟩
  ⟨m2, H.1, h.of_sub (fill_sublist _ (by simp)) H.2.2.2.2.2.2.1 hroot (shaped_fill.2 ⟨hpath,
    htree⟩), ⟨H.2.2.2.2.2.2.1, H.2.2.2.2.2.2.2.1, H.2.2.2.2.2.2.2.2⟩⟩

/-- The cells after `set_parent_target_pre`, case `leaf_red_R`. -/
theorem pre_leaf_red_R_cells {m : map K V} {p g : Nat}
    {cg : color_type} {vP vg : Option (K × V)} {q1 q2 : ptr}
    (c_p : m.mem p = some { color := red, val := vP, l := none, r := none, parent := some g })
    (c_g : m.mem g = some { color := cg, val := vg, l := q1, r := some p, parent := q2 })
    (d_p_g : p ≠ g)
    (t_q1_p : q1 ≠ some p)
    (u_q1_p : some p ≠ q1) :
    ∃ m2, map.set_parent_target_pre m (some p) none = some (Sum.inl m2) ∧
      m2.mem p = some { color := red, val := vP, l := none, r := none, parent := some g } ∧
      m2.mem g = some { color := cg, val := vg, l := q1, r := none, parent := q2 } ∧
      (∀ b, b ∉ [g] → m2.mem b = m.mem b) ∧
      m2._root = m._root ∧
      m2.brk = m.brk ∧
      m2._sz = m._sz ∧
      m2._cmp_k = m._cmp_k :=
  have hr0 : m._root = m._root := rfl
  Exists.elim (set_r_step (m := m) c_g none) fun m1 S1 =>
  have w1 : m1.mem g = some { color := cg, val := vg, l := q1, r := none, parent := q2 } := S1.2.1
  have hop : map.set_parent_target_pre m (some p) none = some (Sum.inl m1) := by
    simp only [map.set_parent_target_pre, map.set_parent_target_fix_call, isOnLeft,
      (get_parent_eq (m := m) c_p : get_parent m (some p) = some (some g)),
      (get_l_eq (m := m) c_g : get_l m (some g) = some q1), t_q1_p, u_q1_p,
      (get_parent_eq (m := m) c_p : get_parent m (some p) = some (some g)), S1.1,
      (get_color_eq (m := m1) ((S1.2.2.1 p d_p_g).trans c_p) : get_color m1 (some p) = some red),
      bind_eq_ub, pure_eq_some, ub_bind_some, ne_eq, Option.some.injEq, not_false_eq_true,
      not_true_eq_false, and_self, and_true, true_and, and_false, false_and, if_true, if_false,
      ite_true, ite_false, reduceCtorEq, reduceIte, ite_not, not_not, Bool.not_eq_true,
      decide_eq_true_eq, decide_eq_false_iff_not, decide_True, decide_False, Bool.false_eq_true,
      eq_self_iff_true, Option.isSome_some, Option.isSome_none]
  have h_g : ∀ b, b ∉ [g] → b ≠ g := fun b hb e => hb (e ▸ List.Mem.head _)
  ⟨m1, hop, ((S1.2.2.1 p d_p_g).trans c_p), w1, (fun b hb => (S1.2.2.1 b (h_g b hb))),
    (S1.2.2.2.2.1.trans hr0), S1.2.2.2.1, S1.2.2.2.2.2.1, S1.2.2.2.2.2.2⟩

/-- Member `set_parent_target` up to its call of `fixDoubleBlack`, with a null target at a red right child without children: no call is made. -/
theorem pre_leaf_red_R
    {m : map K V} {p g : Nat} {cg : color_type} {vP vg : Option (K × V)} {sg : tree K V}
    {q : List (frame K V)}
    (h : Rep m (fill ((.R g cg vg sg) :: q)
      (.node p red vP .nil .nil))) :
    ∃ m2, map.set_parent_target_pre m (some p) none = some (Sum.inl m2) ∧
      Rep m2 (fill ((.R g cg vg sg) :: q)
        .nil) ∧ SameAux m m2 :=
  have hs := shaped_fill.1 h.shaped
  have c_p : m.mem p = some { color := red, val := vP, l := none, r := none, parent := some g } :=
    hs.2.1
  have c_g : m.mem g = some { color := cg, val := vg, l := sg.top, r := some p, parent := ptop q }
    := hs.1.1
  have hB : (List.flatten [(pbefore q).map Prod.fst, sg.addrs, [g], [p], (pafter q).map
    Prod.fst]).Nodup := by
    have e : (fill ((.R g cg vg sg) :: q) (.node p red vP .nil .nil)).addrs =
        List.flatten [(pbefore q).map Prod.fst, sg.addrs, [g], [p], (pafter q).map Prod.fst] := by
      rw [fill_addrs]
      simp [pbefore, pafter, pbefore_append, pafter_append, tree.addrs]
    exact e ▸ h.nodup
  Exists.elim (pre_leaf_red_R_cells c_p c_g (blocks_ne_at hB 3 2 rfl rfl rfl)
    (tree.top_ne_of_not_mem (blocks_not_mem_at hB 3 1 rfl rfl rfl)) (tree.ne_top_of_not_mem
    (blocks_not_mem_at hB 3 1 rfl rfl rfl))) fun m2 H =>
  have fr := H.2.2.2.1
  have a_sg : ∀ b ∈ sg.addrs, m2.mem b = m.mem b :=
    region_agree hB [2] [g] 1 rfl rfl rfl fr
  have a_q : ∀ b ∈ paddrs q, m2.mem b = m.mem b :=
    paddrs_agree (region_agree hB [2] [g] 0 rfl rfl rfl fr)
      (region_agree hB [2] [g] 4 rfl rfl rfl fr)
  have hroot : m2._root = (fill ((.R g cg vg sg) :: q) .nil).top := by
    rw [H.2.2.2.2.1]
    refine h.root.trans ?_
    simp only [fill_L, fill_R, fill_append]
    exact fill_top_congr rfl
  have hpath : ShapedPath m2.mem ((.R g cg vg sg) :: q) none :=
    ⟨H.2.2.1, Shaped.agree hs.1.2.1 a_sg, ShapedPath.agree_path hs.1.2.2 a_q⟩
  have htree : Shaped m2.mem (some g) .nil :=
    trivial
  ⟨m2, H.1, h.of_sub (fill_sublist _ (by simp)) H.2.2.2.2.2.1 hroot (shaped_fill.2 ⟨hpath, htree⟩),
    ⟨H.2.2.2.2.2.1, H.2.2.2.2.2.2.1, H.2.2.2.2.2.2.2⟩⟩

/-- The cells after `set_parent_target_pre`, case `leaf_black_R`. -/
theorem pre_leaf_black_R_cells {m : map K V} {p g : Nat}
    {cg : color_type} {vP vg : Option (K × V)} {q1 q2 : ptr}
    (c_p : m.mem p = some { color := black, val := vP, l := none, r := none, parent := some g })
    (c_g : m.mem g = some { color := cg, val := vg, l := q1, r := some p, parent := q2 })
    (d_p_g : p ≠ g)
    (t_q1_p : q1 ≠ some p)
    (u_q1_p : some p ≠ q1) :
    ∃ m2, map.set_parent_target_pre m (some p) none = some (Sum.inr (m2, none, some g, q1)) ∧
      m2.mem p = some { color := black, val := vP, l := none, r := none, parent := some g } ∧
      m2.mem g = some { color := cg, val := vg, l := q1, r := none, parent := q2 } ∧
      (∀ b, b ∉ [g] → m2.mem b = m.mem b) ∧
      m2._root = m._root ∧
      m2.brk = m.brk ∧
      m2._sz = m._sz ∧
      m2._cmp_k = m._cmp_k :=
  have hr0 : m._root = m._root := rfl
  Exists.elim (set_r_step (m := m) c_g none) fun m1 S1 =>
  have w1 : m1.mem g = some { color := cg, val := vg, l := q1, r := none, parent := q2 } := S1.2.1
  have hop : map.set_parent_target_pre m (some p) none = some (Sum.inr (m1, none, some g, q1)) := by
    simp only [map.set_parent_target_pre, map.set_parent_target_fix_call, isOnLeft,
      (get_parent_eq (m := m) c_p : get_parent m (some p) = some (some g)),
      (get_l_eq (m := m) c_g : get_l m (some g) = some q1), t_q1_p, u_q1_p,
      (get_parent_eq (m := m) c_p : get_parent m (some p) = some (some g)), S1.1,
      (get_color_eq (m := m1) ((S1.2.2.1 p d_p_g).trans c_p) : get_color m1 (some p) = some black),
      (get_parent_eq (m := m1) ((S1.2.2.1 p d_p_g).trans c_p) : get_parent m1 (some p) = some (some
        g)),
      (get_r_eq (m := m1) w1 : get_r m1 (some g) = some none),
      (get_l_eq (m := m1) w1 : get_l m1 (some g) = some q1), bind_eq_ub, pure_eq_some,
      ub_bind_some, ne_eq, Option.some.injEq, not_false_eq_true, not_true_eq_false, and_self,
      and_true, true_and, and_false, false_and, if_true, if_false, ite_true, ite_false,
      reduceCtorEq, reduceIte, ite_not, not_not, Bool.not_eq_true, decide_eq_true_eq,
      decide_eq_false_iff_not, decide_True, decide_False, Bool.false_eq_true, eq_self_iff_true,
      Option.isSome_some, Option.isSome_none]
  have h_g : ∀ b, b ∉ [g] → b ≠ g := fun b hb e => hb (e ▸ List.Mem.head _)
  ⟨m1, hop, ((S1.2.2.1 p d_p_g).trans c_p), w1, (fun b hb => (S1.2.2.1 b (h_g b hb))),
    (S1.2.2.2.2.1.trans hr0), S1.2.2.2.1, S1.2.2.2.2.2.1, S1.2.2.2.2.2.2⟩

/-- Member `set_parent_target` up to its call of `fixDoubleBlack`, with a null target at a black right child without children: the call is made for the emptied place. -/
theorem pre_leaf_black_R
    {m : map K V} {p g : Nat} {cg : color_type} {vP vg : Option (K × V)} {sg : tree K V}
    {q : List (frame K V)}
    (h : Rep m (fill ((.R g cg vg sg) :: q)
      (.node p black vP .nil .nil))) :
    ∃ m2, map.set_parent_target_pre m (some p) none = some (Sum.inr (m2, none, some g, sg.top)) ∧
      Rep m2 (fill ((.R g cg vg sg) :: q)
        .nil) ∧ SameAux m m2 :=
  have hs := shaped_fill.1 h.shaped
  have c_p : m.mem p = some { color := black, val := vP, l := none, r := none, parent := some g }
    := hs.2.1
  have c_g : m.mem g = some { color := cg, val := vg, l := sg.top, r := some p, parent := ptop q }
    := hs.1.1
  have hB : (List.flatten [(pbefore q).map Prod.fst, sg.addrs, [g], [p], (pafter q).map
    Prod.fst]).Nodup := by
    have e : (fill ((.R g cg vg sg) :: q) (.node p black vP .nil .nil)).addrs =
        List.flatten [(pbefore q).map Prod.fst, sg.addrs, [g], [p], (pafter q).map Prod.fst] := by
      rw [fill_addrs]
      simp [pbefore, pafter, pbefore_append, pafter_append, tree.addrs]
    exact e ▸ h.nodup
  Exists.elim (pre_leaf_black_R_cells c_p c_g (blocks_ne_at hB 3 2 rfl rfl rfl)
    (tree.top_ne_of_not_mem (blocks_not_mem_at hB 3 1 rfl rfl rfl)) (tree.ne_top_of_not_mem
    (blocks_not_mem_at hB 3 1 rfl rfl rfl))) fun m2 H =>
  have fr := H.2.2.2.1
  have a_sg : ∀ b ∈ sg.addrs, m2.mem b = m.mem b :=
    region_agree hB [2] [g] 1 rfl rfl rfl fr
  have a_q : ∀ b ∈ paddrs q, m2.mem b = m.mem b :=
    paddrs_agree (region_agree hB [2] [g] 0 rfl rfl rfl fr)
      (region_agree hB [2] [g] 4 rfl rfl rfl fr)
  have hroot : m2._root = (fill ((.R g cg vg sg) :: q) .nil).top := by
    rw [H.2.2.2.2.1]
    refine h.root.trans ?_
    simp only [fill_L, fill_R, fill_append]
    exact fill_top_congr rfl
  have hpath : ShapedPath m2.mem ((.R g cg vg sg) :: q) none :=
    ⟨H.2.2.1, Shaped.agree hs.1.2.1 a_sg, ShapedPath.agree_path hs.1.2.2 a_q⟩
  have htree : Shaped m2.mem (some g) .nil :=
    trivial
  ⟨m2, H.1, h.of_sub (fill_sublist _ (by simp)) H.2.2.2.2.2.1 hroot (shaped_fill.2 ⟨hpath, htree⟩),
    ⟨H.2.2.2.2.2.1, H.2.2.2.2.2.2.1, H.2.2.2.2.2.2.2⟩⟩

/-- The cells after `set_parent_target_pre`, case `r_red_R`. -/
theorem pre_r_red_R_cells {m : map K V} {p r g : Nat}
    {cr cg : color_type} {vP vr vg : Option (K × V)} {q1 q2 q3 q4 : ptr}
    (c_p : m.mem p = some { color := red, val := vP, l := none, r := some r, parent := some g })
    (c_r : m.mem r = some { color := cr, val := vr, l := q1, r := q2, parent := some p })
    (c_g : m.mem g = some { color := cg, val := vg, l := q3, r := some p, parent := q4 })
    (d_p_g : p ≠ g)
    (d_r_g : r ≠ g)
    (d_p_r : p ≠ r)
    (d_g_r : g ≠ r)
    (t_q3_p : q3 ≠ some p)
    (u_q3_p : some p ≠ q3) :
    ∃ m2, map.set_parent_target_pre m (some p) (some r) = some (Sum.inl m2) ∧
      m2.mem p = some { color := red, val := vP, l := none, r := some r, parent := some g } ∧
      m2.mem r = some { color := cr, val := vr, l := q1, r := q2, parent := some g } ∧
      m2.mem g = some { color := cg, val := vg, l := q3, r := some r, parent := q4 } ∧
      (∀ b, b ∉ [g, r] → m2.mem b = m.mem b) ∧
      m2._root = m._root ∧
      m2.brk = m.brk ∧
      m2._sz = m._sz ∧
      m2._cmp_k = m._cmp_k :=
  have hr0 : m._root = m._root := rfl
  Exists.elim (set_r_step (m := m) c_g (some r)) fun m1 S1 =>
  have w1 : m1.mem g = some { color := cg, val := vg, l := q3, r := some r, parent := q4 } := S1.2.1
  Exists.elim (set_parent_step (m := m1) ((S1.2.2.1 r d_r_g).trans c_r) (some g)) fun m2 S2 =>
  have w2 : m2.mem r = some { color := cr, val := vr, l := q1, r := q2, parent := some g } := S2.2.1
  have k2_p := (S2.2.2.1 p d_p_r).trans ((S1.2.2.1 p d_p_g).trans c_p)
  have hop : map.set_parent_target_pre m (some p) (some r) = some (Sum.inl m2) := by
    simp only [map.set_parent_target_pre, map.set_parent_target_fix_call, isOnLeft,
      (get_parent_eq (m := m) c_p : get_parent m (some p) = some (some g)),
      (get_l_eq (m := m) c_g : get_l m (some g) = some q3), t_q3_p, u_q3_p,
      (get_parent_eq (m := m) c_p : get_parent m (some p) = some (some g)), S1.1,
      (get_parent_eq (m := m1) ((S1.2.2.1 p d_p_g).trans c_p) : get_parent m1 (some p) = some (some
        g)),
      S2.1, (get_color_eq (m := m2) k2_p : get_color m2 (some p) = some red), bind_eq_ub,
      pure_eq_some, ub_bind_some, ne_eq, Option.some.injEq, not_false_eq_true, not_true_eq_false,
      and_self, and_true, true_and, and_false, false_and, if_true, if_false, ite_true, ite_false,
      reduceCtorEq, reduceIte, ite_not, not_not, Bool.not_eq_true, decide_eq_true_eq,
      decide_eq_false_iff_not, decide_True, decide_False, Bool.false_eq_true, eq_self_iff_true,
      Option.isSome_some, Option.isSome_none]
  have h_g : ∀ b, b ∉ [g, r] → b ≠ g := fun b hb e => hb (e ▸ List.Mem.head _)
  have h_r : ∀ b, b ∉ [g, r] → b ≠ r := fun b hb e => hb (e ▸ List.Mem.tail _ (List.Mem.head _))
  ⟨m2, hop, k2_p, w2, ((S2.2.2.1 g d_g_r).trans w1), (fun b hb => ((S2.2.2.1 b (h_r b hb)).trans
    (S1.2.2.1 b (h_g b hb)))), (S2.2.2.2.2.1.trans (S1.2.2.2.2.1.trans hr0)), (S2.2.2.2.1.trans
    S1.2.2.2.1), (S2.2.2.2.2.2.1.trans S1.2.2.2.2.2.1), (S2.2.2.2.2.2.2.trans S1.2.2.2.2.2.2)⟩

/-- Member `set_parent_target` up to its call of `fixDoubleBlack`, at a red right child whose only child is its right child. -/
theorem pre_r_red_R
    {m : map K V} {p r g : Nat} {cr cg : color_type} {vP vr vg : Option (K × V)}
    {rl rr sg : tree K V} {q : List (frame K V)}
    (h : Rep m (fill ((.R g cg vg sg) :: q)
      (.node p red vP .nil (.node r cr vr rl rr)))) :
    ∃ m2, map.set_parent_target_pre m (some p) (some r) = some (Sum.inl m2) ∧
      Rep m2 (fill ((.R g cg vg sg) :: q)
        (.node r cr vr rl rr)) ∧ SameAux m m2 :=
  have hs := shaped_fill.1 h.shaped
  have c_p : m.mem p = some { color := red, val := vP, l := none, r := some r, parent := some g }
    := hs.2.1
  have c_r : m.mem r = some { color := cr, val := vr, l := rl.top, r := rr.top, parent := some p }
    := hs.2.2.2.1
  have c_g : m.mem g = some { color := cg, val := vg, l := sg.top, r := some p, parent := ptop q }
    := hs.1.1
  have hB : (List.flatten [(pbefore q).map Prod.fst, sg.addrs, [g], [p], rl.addrs, [r], rr.addrs,
    (pafter q).map Prod.fst]).Nodup := by
    have e : (fill ((.R g cg vg sg) :: q) (.node p red vP .nil (.node r cr vr rl rr))).addrs =
        List.flatten [(pbefore q).map Prod.fst, sg.addrs, [g], [p], rl.addrs, [r], rr.addrs,
          (pafter q).map Prod.fst] := by
      rw [fill_addrs]
      simp [pbefore, pafter, pbefore_append, pafter_append, tree.addrs]
    exact e ▸ h.nodup
  Exists.elim (pre_r_red_R_cells c_p c_r c_g (blocks_ne_at hB 3 2 rfl rfl rfl) (blocks_ne_at hB 5 2
    rfl rfl rfl) (blocks_ne_at hB 3 5 rfl rfl rfl) (blocks_ne_at hB 2 5 rfl rfl rfl)
    (tree.top_ne_of_not_mem (blocks_not_mem_at hB 3 1 rfl rfl rfl)) (tree.ne_top_of_not_mem
    (blocks_not_mem_at hB 3 1 rfl rfl rfl))) fun m2 H =>
  have fr := H.2.2.2.2.1
  have a_rl : ∀ b ∈ rl.addrs, m2.mem b = m.mem b :=
    region_agree hB [2, 5] [g, r] 4 rfl rfl rfl fr
  have a_rr : ∀ b ∈ rr.addrs, m2.mem b = m.mem b :=
    region_agree hB [2, 5] [g, r] 6 rfl rfl rfl fr
  have a_sg : ∀ b ∈ sg.addrs, m2.mem b = m.mem b :=
    region_agree hB [2, 5] [g, r] 1 rfl rfl rfl fr
  have a_q : ∀ b ∈ paddrs q, m2.mem b = m.mem b :=
    paddrs_agree (region_agree hB [2, 5] [g, r] 0 rfl rfl rfl fr)
      (region_agree hB [2, 5] [g, r] 7 rfl rfl rfl fr)
  have hroot : m2._root = (fill ((.R g cg vg sg) :: q) (.node r cr vr rl rr)).top := by
    rw [H.2.2.2.2.2.1]
    refine h.root.trans ?_
    simp only [fill_L, fill_R, fill_append]
    exact fill_top_congr rfl
  have hpath : ShapedPath m2.mem ((.R g cg vg sg) :: q) (some r) :=
    ⟨H.2.2.2.1, Shaped.agree hs.1.2.1 a_sg, ShapedPath.agree_path hs.1.2.2 a_q⟩
  have htree : Shaped m2.mem (some g) (.node r cr vr rl rr) :=
    ⟨H.2.2.1, Shaped.agree hs.2.2.2.2.1 a_rl, Shaped.agree hs.2.2.2.2.2 a_rr⟩
  ⟨m2, H.1, h.of_sub (fill_sublist _ (by simp)) H.2.2.2.2.2.2.1 hroot (shaped_fill.2 ⟨hpath,
    htree⟩), ⟨H.2.2.2.2.2.2.1, H.2.2.2.2.2.2.2.1, H.2.2.2.2.2.2.2.2⟩⟩

/-- The cells after `set_parent_target_pre`, case `r_black_black_R`. -/
theorem pre_r_black_black_R_cells {m : map K V} {p r g : Nat}
    {cg : color_type} {vP vr vg : Option (K × V)} {q1 q2 q3 q4 : ptr}
    (c_p : m.mem p = some { color := black, val := vP, l := none, r := some r, parent := some g })
    (c_r : m.mem r = some { color := black, val := vr, l := q1, r := q2, parent := some p })
    (c_g : m.mem g = some { color := cg, val := vg, l := q3, r := some p, parent := q4 })
    (d_p_g : p ≠ g)
    (d_r_g : r ≠ g)
    (d_p_r : p ≠ r)
    (d_g_r : g ≠ r)
    (t_q3_p : q3 ≠ some p)
    (u_q3_p : some p ≠ q3) :
    ∃ m2, map.set_parent_target_pre m (some p) (some r) = some (Sum.inr (m2, some r, some g, q3)) ∧
      m2.mem p = some { color := black, val := vP, l := none, r := some r, parent := some g } ∧
      m2.mem r = some { color := black, val := vr, l := q1, r := q2, parent := some g } ∧
      m2.mem g = some { color := cg, val := vg, l := q3, r := some r, parent := q4 } ∧
      (∀ b, b ∉ [g, r] → m2.mem b = m.mem b) ∧
      m2._root = m._root ∧
      m2.brk = m.brk ∧
      m2._sz = m._sz ∧
      m2._cmp_k = m._cmp_k :=
  have hr0 : m._root = m._root := rfl
  Exists.elim (set_r_step (m := m) c_g (some r)) fun m1 S1 =>
  have w1 : m1.mem g = some { color := cg, val := vg, l := q3, r := some r, parent := q4 } := S1.2.1
  Exists.elim (set_parent_step (m := m1) ((S1.2.2.1 r d_r_g).trans c_r) (some g)) fun m2 S2 =>
  have w2 : m2.mem r = some { color := black, val := vr, l := q1, r := q2, parent := some g } :=
    S2.2.1
  have k2_p := (S2.2.2.1 p d_p_r).trans ((S1.2.2.1 p d_p_g).trans c_p)
  have hop : map.set_parent_target_pre m (some p) (some r) = some (Sum.inr (m2, some r, some g,
    q3)) := by
    simp only [map.set_parent_target_pre, map.set_parent_target_fix_call, isOnLeft,
      (get_parent_eq (m := m) c_p : get_parent m (some p) = some (some g)),
      (get_l_eq (m := m) c_g : get_l m (some g) = some q3), t_q3_p, u_q3_p,
      (get_parent_eq (m := m) c_p : get_parent m (some p) = some (some g)), S1.1,
      (get_parent_eq (m := m1) ((S1.2.2.1 p d_p_g).trans c_p) : get_parent m1 (some p) = some (some
        g)),
      S2.1, (get_color_eq (m := m2) k2_p : get_color m2 (some p) = some black),
      (get_color_eq (m := m2) w2 : get_color m2 (some r) = some black),
      (get_parent_eq (m := m2) w2 : get_parent m2 (some r) = some (some g)),
      (get_parent_eq (m := m2) k2_p : get_parent m2 (some p) = some (some g)),
      (get_r_eq (m := m2) ((S2.2.2.1 g d_g_r).trans w1) : get_r m2 (some g) = some (some r)),
      (get_l_eq (m := m2) ((S2.2.2.1 g d_g_r).trans w1) : get_l m2 (some g) = some q3),
      bind_eq_ub, pure_eq_some, ub_bind_some, ne_eq, Option.some.injEq, not_false_eq_true,
      not_true_eq_false, and_self, and_true, true_and, and_false, false_and, if_true, if_false,
      ite_true, ite_false, reduceCtorEq, reduceIte, ite_not, not_not, Bool.not_eq_true,
      decide_eq_true_eq, decide_eq_false_iff_not, decide_True, decide_False, Bool.false_eq_true,
      eq_self_iff_true, Option.isSome_some, Option.isSome_none]
  have h_g : ∀ b, b ∉ [g, r] → b ≠ g := fun b hb e => hb (e ▸ List.Mem.head _)
  have h_r : ∀ b, b ∉ [g, r] → b ≠ r := fun b hb e => hb (e ▸ List.Mem.tail _ (List.Mem.head _))
  ⟨m2, hop, k2_p, w2, ((S2.2.2.1 g d_g_r).trans w1), (fun b hb => ((S2.2.2.1 b (h_r b hb)).trans
    (S1.2.2.1 b (h_g b hb)))), (S2.2.2.2.2.1.trans (S1.2.2.2.2.1.trans hr0)), (S2.2.2.2.1.trans
    S1.2.2.2.1), (S2.2.2.2.2.2.1.trans S1.2.2.2.2.2.1), (S2.2.2.2.2.2.2.trans S1.2.2.2.2.2.2)⟩

/-- Member `set_parent_target` up to its call of `fixDoubleBlack`, at a black right child whose only child, the right one, is black: the call is made for the child. -/
theorem pre_r_black_black_R
    {m : map K V} {p r g : Nat} {cg : color_type} {vP vr vg : Option (K × V)}
    {rl rr sg : tree K V} {q : List (frame K V)}
    (h : Rep m (fill ((.R g cg vg sg) :: q)
      (.node p black vP .nil (.node r black vr rl rr)))) :
    ∃ m2, map.set_parent_target_pre m (some p) (some r) = some (Sum.inr (m2, some r, some g, sg.top)) ∧
      Rep m2 (fill ((.R g cg vg sg) :: q)
        (.node r black vr rl rr)) ∧ SameAux m m2 :=
  have hs := shaped_fill.1 h.shaped
  have c_p : m.mem p = some { color := black, val := vP, l := none, r := some r, parent := some g }
    := hs.2.1
  have c_r : m.mem r = some { color := black, val := vr, l := rl.top, r := rr.top, parent := some p
    } := hs.2.2.2.1
  have c_g : m.mem g = some { color := cg, val := vg, l := sg.top, r := some p, parent := ptop q }
    := hs.1.1
  have hB : (List.flatten [(pbefore q).map Prod.fst, sg.addrs, [g], [p], rl.addrs, [r], rr.addrs,
    (pafter q).map Prod.fst]).Nodup := by
    have e : (fill ((.R g cg vg sg) :: q) (.node p black vP .nil (.node r black vr rl rr))).addrs =
        List.flatten [(pbefore q).map Prod.fst, sg.addrs, [g], [p], rl.addrs, [r], rr.addrs,
          (pafter q).map Prod.fst] := by
      rw [fill_addrs]
      simp [pbefore, pafter, pbefore_append, pafter_append, tree.addrs]
    exact e ▸ h.nodup
  Exists.elim (pre_r_black_black_R_cells c_p c_r c_g (blocks_ne_at hB 3 2 rfl rfl rfl)
    (blocks_ne_at hB 5 2 rfl rfl rfl) (blocks_ne_at hB 3 5 rfl rfl rfl) (blocks_ne_at hB 2 5 rfl
    rfl rfl) (tree.top_ne_of_not_mem (blocks_not_mem_at hB 3 1 rfl rfl rfl))
    (tree.ne_top_of_not_mem (blocks_not_mem_at hB 3 1 rfl rfl rfl))) fun m2 H =>
  have fr := H.2.2.2.2.1
  have a_rl : ∀ b ∈ rl.addrs, m2.mem b = m.mem b :=
    region_agree hB [2, 5] [g, r] 4 rfl rfl rfl fr
  have a_rr : ∀ b ∈ rr.addrs, m2.mem b = m.mem b :=
    region_agree hB [2, 5] [g, r] 6 rfl rfl rfl fr
  have a_sg : ∀ b ∈ sg.addrs, m2.mem b = m.mem b :=
    region_agree hB [2, 5] [g, r] 1 rfl rfl rfl fr
  have a_q : ∀ b ∈ paddrs q, m2.mem b = m.mem b :=
    paddrs_agree (region_agree hB [2, 5] [g, r] 0 rfl rfl rfl fr)
      (region_agree hB [2, 5] [g, r] 7 rfl rfl rfl fr)
  have hroot : m2._root = (fill ((.R g cg vg sg) :: q) (.node r black vr rl rr)).top := by
    rw [H.2.2.2.2.2.1]
    refine h.root.trans ?_
    simp only [fill_L, fill_R, fill_append]
    exact fill_top_congr rfl
  have hpath : ShapedPath m2.mem ((.R g cg vg sg) :: q) (some r) :=
    ⟨H.2.2.2.1, Shaped.agree hs.1.2.1 a_sg, ShapedPath.agree_path hs.1.2.2 a_q⟩
  have htree : Shaped m2.mem (some g) (.node r black vr rl rr) :=
    ⟨H.2.2.1, Shaped.agree hs.2.2.2.2.1 a_rl, Shaped.agree hs.2.2.2.2.2 a_rr⟩
  ⟨m2, H.1, h.of_sub (fill_sublist _ (by simp)) H.2.2.2.2.2.2.1 hroot (shaped_fill.2 ⟨hpath,
    htree⟩), ⟨H.2.2.2.2.2.2.1, H.2.2.2.2.2.2.2.1, H.2.2.2.2.2.2.2.2⟩⟩

/-- The cells after `set_parent_target_pre`, case `r_black_red_R`. -/
theorem pre_r_black_red_R_cells {m : map K V} {p r g : Nat}
    {cg : color_type} {vP vr vg : Option (K × V)} {q1 q2 q3 q4 : ptr}
    (c_p : m.mem p = some { color := black, val := vP, l := none, r := some r, parent := some g })
    (c_r : m.mem r = some { color := red, val := vr, l := q1, r := q2, parent := some p })
    (c_g : m.mem g = some { color := cg, val := vg, l := q3, r := some p, parent := q4 })
    (d_p_g : p ≠ g)
    (d_r_g : r ≠ g)
    (d_p_r : p ≠ r)
    (d_g_r : g ≠ r)
    (t_q3_p : q3 ≠ some p)
    (u_q3_p : some p ≠ q3) :
    ∃ m2, map.set_parent_target_pre m (some p) (some r) = some (Sum.inl m2) ∧
      m2.mem p = some { color := black, val := vP, l := none, r := some r, parent := some g } ∧
      m2.mem r = some { color := black, val := vr, l := q1, r := q2, parent := some g } ∧
      m2.mem g = some { color := cg, val := vg, l := q3, r := some r, parent := q4 } ∧
      (∀ b, b ∉ [g, r] → m2.mem b = m.mem b) ∧
      m2._root = m._root ∧
      m2.brk = m.brk ∧
      m2._sz = m._sz ∧
      m2._cmp_k = m._cmp_k :=
  have hr0 : m._root = m._root := rfl
  Exists.elim (set_r_step (m := m) c_g (some r)) fun m1 S1 =>
  have w1 : m1.mem g = some { color := cg, val := vg, l := q3, r := some r, parent := q4 } := S1.2.1
  Exists.elim (set_parent_step (m := m1) ((S1.2.2.1 r d_r_g).trans c_r) (some g)) fun m2 S2 =>
  have w2 : m2.mem r = some { color := red, val := vr, l := q1, r := q2, parent := some g } :=
    S2.2.1
  have k2_p := (S2.2.2.1 p d_p_r).trans ((S1.2.2.1 p d_p_g).trans c_p)
  Exists.elim (set_color_step (m := m2) w2 black) fun m3 S3 =>
  have w3 : m3.mem r = some { color := black, val := vr, l := q1, r := q2, parent := some g } :=
    S3.2.1
  have xr3 : m3._root = m._root := S3.2.2.2.2.1.trans (S2.2.2.2.2.1.trans (S1.2.2.2.2.1.trans hr0))
  have k3_g := (S3.2.2.1 g d_g_r).trans ((S2.2.2.1 g d_g_r).trans w1)
  have hop : map.set_parent_target_pre m (some p) (some r) = some (Sum.inl m3) := by
    simp only [map.set_parent_target_pre, map.set_parent_target_fix_call, isOnLeft,
      (get_parent_eq (m := m) c_p : get_parent m (some p) = some (some g)),
      (get_l_eq (m := m) c_g : get_l m (some g) = some q3), t_q3_p, u_q3_p,
      (get_parent_eq (m := m) c_p : get_parent m (some p) = some (some g)), S1.1,
      (get_parent_eq (m := m1) ((S1.2.2.1 p d_p_g).trans c_p) : get_parent m1 (some p) = some (some
        g)),
      S2.1, (get_color_eq (m := m2) k2_p : get_color m2 (some p) = some black),
      (get_color_eq (m := m2) w2 : get_color m2 (some r) = some red), S3.1, bind_eq_ub,
      pure_eq_some, ub_bind_some, ne_eq, Option.some.injEq, not_false_eq_true, not_true_eq_false,
      and_self, and_true, true_and, and_false, false_and, if_true, if_false, ite_true, ite_false,
      reduceCtorEq, reduceIte, ite_not, not_not, Bool.not_eq_true, decide_eq_true_eq,
      decide_eq_false_iff_not, decide_True, decide_False, Bool.false_eq_true, eq_self_iff_true,
      Option.isSome_some, Option.isSome_none]
  have h_g : ∀ b, b ∉ [g, r] → b ≠ g := fun b hb e => hb (e ▸ List.Mem.head _)
  have h_r : ∀ b, b ∉ [g, r] → b ≠ r := fun b hb e => hb (e ▸ List.Mem.tail _ (List.Mem.head _))
  ⟨m3, hop, ((S3.2.2.1 p d_p_r).trans k2_p), w3, k3_g, (fun b hb => ((S3.2.2.1 b (h_r b hb)).trans
    ((S2.2.2.1 b (h_r b hb)).trans (S1.2.2.1 b (h_g b hb))))), xr3, (S3.2.2.2.1.trans
    (S2.2.2.2.1.trans S1.2.2.2.1)), (S3.2.2.2.2.2.1.trans (S2.2.2.2.2.2.1.trans S1.2.2.2.2.2.1)),
    (S3.2.2.2.2.2.2.trans (S2.2.2.2.2.2.2.trans S1.2.2.2.2.2.2))⟩

/-- Member `set_parent_target` up to its call of `fixDoubleBlack`, at a black right child whose only child, the right one, is red: the child takes the place and becomes black. -/
theorem pre_r_black_red_R
    {m : map K V} {p r g : Nat} {cg : color_type} {vP vr vg : Option (K × V)}
    {rl rr sg : tree K V} {q : List (frame K V)}
    (h : Rep m (fill ((.R g cg vg sg) :: q)
      (.node p black vP .nil (.node r red vr rl rr)))) :
    ∃ m2, map.set_parent_target_pre m (some p) (some r) = some (Sum.inl m2) ∧
      Rep m2 (fill ((.R g cg vg sg) :: q)
        (.node r black vr rl rr)) ∧ SameAux m m2 :=
  have hs := shaped_fill.1 h.shaped
  have c_p : m.mem p = some { color := black, val := vP, l := none, r := some r, parent := some g }
    := hs.2.1
  have c_r : m.mem r = some { color := red, val := vr, l := rl.top, r := rr.top, parent := some p }
    := hs.2.2.2.1
  have c_g : m.mem g = some { color := cg, val := vg, l := sg.top, r := some p, parent := ptop q }
    := hs.1.1
  have hB : (List.flatten [(pbefore q).map Prod.fst, sg.addrs, [g], [p], rl.addrs, [r], rr.addrs,
    (pafter q).map Prod.fst]).Nodup := by
    have e : (fill ((.R g cg vg sg) :: q) (.node p black vP .nil (.node r red vr rl rr))).addrs =
        List.flatten [(pbefore q).map Prod.fst, sg.addrs, [g], [p], rl.addrs, [r], rr.addrs,
          (pafter q).map Prod.fst] := by
      rw [fill_addrs]
      simp [pbefore, pafter, pbefore_append, pafter_append, tree.addrs]
    exact e ▸ h.nodup
  Exists.elim (pre_r_black_red_R_cells c_p c_r c_g (blocks_ne_at hB 3 2 rfl rfl rfl) (blocks_ne_at
    hB 5 2 rfl rfl rfl) (blocks_ne_at hB 3 5 rfl rfl rfl) (blocks_ne_at hB 2 5 rfl rfl rfl)
    (tree.top_ne_of_not_mem (blocks_not_mem_at hB 3 1 rfl rfl rfl)) (tree.ne_top_of_not_mem
    (blocks_not_mem_at hB 3 1 rfl rfl rfl))) fun m2 H =>
  have fr := H.2.2.2.2.1
  have a_rl : ∀ b ∈ rl.addrs, m2.mem b = m.mem b :=
    region_agree hB [2, 5] [g, r] 4 rfl rfl rfl fr
  have a_rr : ∀ b ∈ rr.addrs, m2.mem b = m.mem b :=
    region_agree hB [2, 5] [g, r] 6 rfl rfl rfl fr
  have a_sg : ∀ b ∈ sg.addrs, m2.mem b = m.mem b :=
    region_agree hB [2, 5] [g, r] 1 rfl rfl rfl fr
  have a_q : ∀ b ∈ paddrs q, m2.mem b = m.mem b :=
    paddrs_agree (region_agree hB [2, 5] [g, r] 0 rfl rfl rfl fr)
      (region_agree hB [2, 5] [g, r] 7 rfl rfl rfl fr)
  have hroot : m2._root = (fill ((.R g cg vg sg) :: q) (.node r black vr rl rr)).top := by
    rw [H.2.2.2.2.2.1]
    refine h.root.trans ?_
    simp only [fill_L, fill_R, fill_append]
    exact fill_top_congr rfl
  have hpath : ShapedPath m2.mem ((.R g cg vg sg) :: q) (some r) :=
    ⟨H.2.2.2.1, Shaped.agree hs.1.2.1 a_sg, ShapedPath.agree_path hs.1.2.2 a_q⟩
  have htree : Shaped m2.mem (some g) (.node r black vr rl rr) :=
    ⟨H.2.2.1, Shaped.agree hs.2.2.2.2.1 a_rl, Shaped.agree hs.2.2.2.2.2 a_rr⟩
  ⟨m2, H.1, h.of_sub (fill_sublist _ (by simp)) H.2.2.2.2.2.2.1 hroot (shaped_fill.2 ⟨hpath,
    htree⟩), ⟨H.2.2.2.2.2.2.1, H.2.2.2.2.2.2.2.1, H.2.2.2.2.2.2.2.2⟩⟩

/-- The cells after `set_parent_target_pre`, case `l_red_R`. -/
theorem pre_l_red_R_cells {m : map K V} {p r g : Nat}
    {cr cg : color_type} {vP vr vg : Option (K × V)} {q1 q2 q3 q4 : ptr}
    (c_p : m.mem p = some { color := red, val := vP, l := some r, r := none, parent := some g })
    (c_r : m.mem r = some { color := cr, val := vr, l := q1, r := q2, parent := some p })
    (c_g : m.mem g = some { color := cg, val := vg, l := q3, r := some p, parent := q4 })
    (d_p_g : p ≠ g)
    (d_r_g : r ≠ g)
    (d_p_r : p ≠ r)
    (d_g_r : g ≠ r)
    (t_q3_p : q3 ≠ some p)
    (u_q3_p : some p ≠ q3) :
    ∃ m2, map.set_parent_target_pre m (some p) (some r) = some (Sum.inl m2) ∧
      m2.mem p = some { color := red, val := vP, l := some r, r := none, parent := some g } ∧
      m2.mem r = some { color := cr, val := vr, l := q1, r := q2, parent := some g } ∧
      m2.mem g = some { color := cg, val := vg, l := q3, r := some r, parent := q4 } ∧
      (∀ b, b ∉ [g, r] → m2.mem b = m.mem b) ∧
      m2._root = m._root ∧
      m2.brk = m.brk ∧
      m2._sz = m._sz ∧
      m2._cmp_k = m._cmp_k :=
  have hr0 : m._root = m._root := rfl
  Exists.elim (set_r_step (m := m) c_g (some r)) fun m1 S1 =>
  have w1 : m1.mem g = some { color := cg, val := vg, l := q3, r := some r, parent := q4 } := S1.2.1
  Exists.elim (set_parent_step (m := m1) ((S1.2.2.1 r d_r_g).trans c_r) (some g)) fun m2 S2 =>
  have w2 : m2.mem r = some { color := cr, val := vr, l := q1, r := q2, parent := some g } := S2.2.1
  have k2_p := (S2.2.2.1 p d_p_r).trans ((S1.2.2.1 p d_p_g).trans c_p)
  have hop : map.set_parent_target_pre m (some p) (some r) = some (Sum.inl m2) := by
    simp only [map.set_parent_target_pre, map.set_parent_target_fix_call, isOnLeft,
      (get_parent_eq (m := m) c_p : get_parent m (some p) = some (some g)),
      (get_l_eq (m := m) c_g : get_l m (some g) = some q3), t_q3_p, u_q3_p,
      (get_parent_eq (m := m) c_p : get_parent m (some p) = some (some g)), S1.1,
      (get_parent_eq (m := m1) ((S1.2.2.1 p d_p_g).trans c_p) : get_parent m1 (some p) = some (some
        g)),
      S2.1, (get_color_eq (m := m2) k2_p : get_color m2 (some p) = some red), bind_eq_ub,
      pure_eq_some, ub_bind_some, ne_eq, Option.some.injEq, not_false_eq_true, not_true_eq_false,
      and_self, and_true, true_and, and_false, false_and, if_true, if_false, ite_true, ite_false,
      reduceCtorEq, reduceIte, ite_not, not_not, Bool.not_eq_true, decide_eq_true_eq,
      decide_eq_false_iff_not, decide_True, decide_False, Bool.false_eq_true, eq_self_iff_true,
      Option.isSome_some, Option.isSome_none]
  have h_g : ∀ b, b ∉ [g, r] → b ≠ g := fun b hb e => hb (e ▸ List.Mem.head _)
  have h_r : ∀ b, b ∉ [g, r] → b ≠ r := fun b hb e => hb (e ▸ List.Mem.tail _ (List.Mem.head _))
  ⟨m2, hop, k2_p, w2, ((S2.2.2.1 g d_g_r).trans w1), (fun b hb => ((S2.2.2.1 b (h_r b hb)).trans
    (S1.2.2.1 b (h_g b hb)))), (S2.2.2.2.2.1.trans (S1.2.2.2.2.1.trans hr0)), (S2.2.2.2.1.trans
    S1.2.2.2.1), (S2.2.2.2.2.2.1.trans S1.2.2.2.2.2.1), (S2.2.2.2.2.2.2.trans S1.2.2.2.2.2.2)⟩

/-- Member `set_parent_target` up to its call of `fixDoubleBlack`, at a red right child whose only child is its left child. -/
theorem pre_l_red_R
    {m : map K V} {p r g : Nat} {cr cg : color_type} {vP vr vg : Option (K × V)}
    {rl rr sg : tree K V} {q : List (frame K V)}
    (h : Rep m (fill ((.R g cg vg sg) :: q)
      (.node p red vP (.node r cr vr rl rr) .nil))) :
    ∃ m2, map.set_parent_target_pre m (some p) (some r) = some (Sum.inl m2) ∧
      Rep m2 (fill ((.R g cg vg sg) :: q)
        (.node r cr vr rl rr)) ∧ SameAux m m2 :=
  have hs := shaped_fill.1 h.shaped
  have c_p : m.mem p = some { color := red, val := vP, l := some r, r := none, parent := some g }
    := hs.2.1
  have c_r : m.mem r = some { color := cr, val := vr, l := rl.top, r := rr.top, parent := some p }
    := hs.2.2.1.1
  have c_g : m.mem g = some { color := cg, val := vg, l := sg.top, r := some p, parent := ptop q }
    := hs.1.1
  have hB : (List.flatten [(pbefore q).map Prod.fst, sg.addrs, [g], rl.addrs, [r], rr.addrs, [p],
    (pafter q).map Prod.fst]).Nodup := by
    have e : (fill ((.R g cg vg sg) :: q) (.node p red vP (.node r cr vr rl rr) .nil)).addrs =
        List.flatten [(pbefore q).map Prod.fst, sg.addrs, [g], rl.addrs, [r], rr.addrs, [p],
          (pafter q).map Prod.fst] := by
      rw [fill_addrs]
      simp [pbefore, pafter, pbefore_append, pafter_append, tree.addrs]
    exact e ▸ h.nodup
  Exists.elim (pre_l_red_R_cells c_p c_r c_g (blocks_ne_at hB 6 2 rfl rfl rfl) (blocks_ne_at hB 4 2
    rfl rfl rfl) (blocks_ne_at hB 6 4 rfl rfl rfl) (blocks_ne_at hB 2 4 rfl rfl rfl)
    (tree.top_ne_of_not_mem (blocks_not_mem_at hB 6 1 rfl rfl rfl)) (tree.ne_top_of_not_mem
    (blocks_not_mem_at hB 6 1 rfl rfl rfl))) fun m2 H =>
  have fr := H.2.2.2.2.1
  have a_rl : ∀ b ∈ rl.addrs, m2.mem b = m.mem b :=
    region_agree hB [2, 4] [g, r] 3 rfl rfl rfl fr
  have a_rr : ∀ b ∈ rr.addrs, m2.mem b = m.mem b :=
    region_agree hB [2, 4] [g, r] 5 rfl rfl rfl fr
  have a_sg : ∀ b ∈ sg.addrs, m2.mem b = m.mem b :=
    region_agree hB [2, 4] [g, r] 1 rfl rfl rfl fr
  have a_q : ∀ b ∈ paddrs q, m2.mem b = m.mem b :=
    paddrs_agree (region_agree hB [2, 4] [g, r] 0 rfl rfl rfl fr)
      (region_agree hB [2, 4] [g, r] 7 rfl rfl rfl fr)
  have hroot : m2._root = (fill ((.R g cg vg sg) :: q) (.node r cr vr rl rr)).top := by
    rw [H.2.2.2.2.2.1]
    refine h.root.trans ?_
    simp only [fill_L, fill_R, fill_append]
    exact fill_top_congr rfl
  have hpath : ShapedPath m2.mem ((.R g cg vg sg) :: q) (some r) :=
    ⟨H.2.2.2.1, Shaped.agree hs.1.2.1 a_sg, ShapedPath.agree_path hs.1.2.2 a_q⟩
  have htree : Shaped m2.mem (some g) (.node r cr vr rl rr) :=
    ⟨H.2.2.1, Shaped.agree hs.2.2.1.2.1 a_rl, Shaped.agree hs.2.2.1.2.2 a_rr⟩
  ⟨m2, H.1, h.of_sub (fill_sublist _ (by simp)) H.2.2.2.2.2.2.1 hroot (shaped_fill.2 ⟨hpath,
    htree⟩), ⟨H.2.2.2.2.2.2.1, H.2.2.2.2.2.2.2.1, H.2.2.2.2.2.2.2.2⟩⟩

/-- The cells after `set_parent_target_pre`, case `l_black_black_R`. -/
theorem pre_l_black_black_R_cells {m : map K V} {p r g : Nat}
    {cg : color_type} {vP vr vg : Option (K × V)} {q1 q2 q3 q4 : ptr}
    (c_p : m.mem p = some { color := black, val := vP, l := some r, r := none, parent := some g })
    (c_r : m.mem r = some { color := black, val := vr, l := q1, r := q2, parent := some p })
    (c_g : m.mem g = some { color := cg, val := vg, l := q3, r := some p, parent := q4 })
    (d_p_g : p ≠ g)
    (d_r_g : r ≠ g)
    (d_p_r : p ≠ r)
    (d_g_r : g ≠ r)
    (t_q3_p : q3 ≠ some p)
    (u_q3_p : some p ≠ q3) :
    ∃ m2, map.set_parent_target_pre m (some p) (some r) = some (Sum.inr (m2, some r, some g, q3)) ∧
      m2.mem p = some { color := black, val := vP, l := some r, r := none, parent := some g } ∧
      m2.mem r = some { color := black, val := vr, l := q1, r := q2, parent := some g } ∧
      m2.mem g = some { color := cg, val := vg, l := q3, r := some r, parent := q4 } ∧
      (∀ b, b ∉ [g, r] → m2.mem b = m.mem b) ∧
      m2._root = m._root ∧
      m2.brk = m.brk ∧
      m2._sz = m._sz ∧
      m2._cmp_k = m._cmp_k :=
  have hr0 : m._root = m._root := rfl
  Exists.elim (set_r_step (m := m) c_g (some r)) fun m1 S1 =>
  have w1 : m1.mem g = some { color := cg, val := vg, l := q3, r := some r, parent := q4 } := S1.2.1
  Exists.elim (set_parent_step (m := m1) ((S1.2.2.1 r d_r_g).trans c_r) (some g)) fun m2 S2 =>
  have w2 : m2.mem r = some { color := black, val := vr, l := q1, r := q2, parent := some g } :=
    S2.2.1
  have k2_p := (S2.2.2.1 p d_p_r).trans ((S1.2.2.1 p d_p_g).trans c_p)
  have hop : map.set_parent_target_pre m (some p) (some r) = some (Sum.inr (m2, some r, some g,
    q3)) := by
    simp only [map.set_parent_target_pre, map.set_parent_target_fix_call, isOnLeft,
      (get_parent_eq (m := m) c_p : get_parent m (some p) = some (some g)),
      (get_l_eq (m := m) c_g : get_l m (some g) = some q3), t_q3_p, u_q3_p,
      (get_parent_eq (m := m) c_p : get_parent m (some p) = some (some g)), S1.1,
      (get_parent_eq (m := m1) ((S1.2.2.1 p d_p_g).trans c_p) : get_parent m1 (some p) = some (some
        g)),
      S2.1, (get_color_eq (m := m2) k2_p : get_color m2 (some p) = some black),
      (get_color_eq (m := m2) w2 : get_color m2 (some r) = some black),
      (get_parent_eq (m := m2) w2 : get_parent m2 (some r) = some (some g)),
      (get_parent_eq (m := m2) k2_p : get_parent m2 (some p) = some (some g)),
      (get_r_eq (m := m2) ((S2.2.2.1 g d_g_r).trans w1) : get_r m2 (some g) = some (some r)),
      (get_l_eq (m := m2) ((S2.2.2.1 g d_g_r).trans w1) : get_l m2 (some g) = some q3),
      bind_eq_ub, pure_eq_some, ub_bind_some, ne_eq, Option.some.injEq, not_false_eq_true,
      not_true_eq_false, and_self, and_true, true_and, and_false, false_and, if_true, if_false,
      ite_true, ite_false, reduceCtorEq, reduceIte, ite_not, not_not, Bool.not_eq_true,
      decide_eq_true_eq, decide_eq_false_iff_not, decide_True, decide_False, Bool.false_eq_true,
      eq_self_iff_true, Option.isSome_some, Option.isSome_none]
  have h_g : ∀ b, b ∉ [g, r] → b ≠ g := fun b hb e => hb (e ▸ List.Mem.head _)
  have h_r : ∀ b, b ∉ [g, r] → b ≠ r := fun b hb e => hb (e ▸ List.Mem.tail _ (List.Mem.head _))
  ⟨m2, hop, k2_p, w2, ((S2.2.2.1 g d_g_r).trans w1), (fun b hb => ((S2.2.2.1 b (h_r b hb)).trans
    (S1.2.2.1 b (h_g b hb)))), (S2.2.2.2.2.1.trans (S1.2.2.2.2.1.trans hr0)), (S2.2.2.2.1.trans
    S1.2.2.2.1), (S2.2.2.2.2.2.1.trans S1.2.2.2.2.2.1), (S2.2.2.2.2.2.2.trans S1.2.2.2.2.2.2)⟩

/-- Member `set_parent_target` up to its call of `fixDoubleBlack`, at a black right child whose only child, the left one, is black: the call is made for the child. -/
theorem pre_l_black_black_R
    {m : map K V} {p r g : Nat} {cg : color_type} {vP vr vg : Option (K × V)}
    {rl rr sg : tree K V} {q : List (frame K V)}
    (h : Rep m (fill ((.R g cg vg sg) :: q)
      (.node p black vP (.node r black vr rl rr) .nil))) :
    ∃ m2, map.set_parent_target_pre m (some p) (some r) = some (Sum.inr (m2, some r, some g, sg.top)) ∧
      Rep m2 (fill ((.R g cg vg sg) :: q)
        (.node r black vr rl rr)) ∧ SameAux m m2 :=
  have hs := shaped_fill.1 h.shaped
  have c_p : m.mem p = some { color := black, val := vP, l := some r, r := none, parent := some g }
    := hs.2.1
  have c_r : m.mem r = some { color := black, val := vr, l := rl.top, r := rr.top, parent := some p
    } := hs.2.2.1.1
  have c_g : m.mem g = some { color := cg, val := vg, l := sg.top, r := some p, parent := ptop q }
    := hs.1.1
  have hB : (List.flatten [(pbefore q).map Prod.fst, sg.addrs, [g], rl.addrs, [r], rr.addrs, [p],
    (pafter q).map Prod.fst]).Nodup := by
    have e : (fill ((.R g cg vg sg) :: q) (.node p black vP (.node r black vr rl rr) .nil)).addrs =
        List.flatten [(pbefore q).map Prod.fst, sg.addrs, [g], rl.addrs, [r], rr.addrs, [p],
          (pafter q).map Prod.fst] := by
      rw [fill_addrs]
      simp [pbefore, pafter, pbefore_append, pafter_append, tree.addrs]
    exact e ▸ h.nodup
  Exists.elim (pre_l_black_black_R_cells c_p c_r c_g (blocks_ne_at hB 6 2 rfl rfl rfl)
    (blocks_ne_at hB 4 2 rfl rfl rfl) (blocks_ne_at hB 6 4 rfl rfl rfl) (blocks_ne_at hB 2 4 rfl
    rfl rfl) (tree.top_ne_of_not_mem (blocks_not_mem_at hB 6 1 rfl rfl rfl))
    (tree.ne_top_of_not_mem (blocks_not_mem_at hB 6 1 rfl rfl rfl))) fun m2 H =>
  have fr := H.2.2.2.2.1
  have a_rl : ∀ b ∈ rl.addrs, m2.mem b = m.mem b :=
    region_agree hB [2, 4] [g, r] 3 rfl rfl rfl fr
  have a_rr : ∀ b ∈ rr.addrs, m2.mem b = m.mem b :=
    region_agree hB [2, 4] [g, r] 5 rfl rfl rfl fr
  have a_sg : ∀ b ∈ sg.addrs, m2.mem b = m.mem b :=
    region_agree hB [2, 4] [g, r] 1 rfl rfl rfl fr
  have a_q : ∀ b ∈ paddrs q, m2.mem b = m.mem b :=
    paddrs_agree (region_agree hB [2, 4] [g, r] 0 rfl rfl rfl fr)
      (region_agree hB [2, 4] [g, r] 7 rfl rfl rfl fr)
  have hroot : m2._root = (fill ((.R g cg vg sg) :: q) (.node r black vr rl rr)).top := by
    rw [H.2.2.2.2.2.1]
    refine h.root.trans ?_
    simp only [fill_L, fill_R, fill_append]
    exact fill_top_congr rfl
  have hpath : ShapedPath m2.mem ((.R g cg vg sg) :: q) (some r) :=
    ⟨H.2.2.2.1, Shaped.agree hs.1.2.1 a_sg, ShapedPath.agree_path hs.1.2.2 a_q⟩
  have htree : Shaped m2.mem (some g) (.node r black vr rl rr) :=
    ⟨H.2.2.1, Shaped.agree hs.2.2.1.2.1 a_rl, Shaped.agree hs.2.2.1.2.2 a_rr⟩
  ⟨m2, H.1, h.of_sub (fill_sublist _ (by simp)) H.2.2.2.2.2.2.1 hroot (shaped_fill.2 ⟨hpath,
    htree⟩), ⟨H.2.2.2.2.2.2.1, H.2.2.2.2.2.2.2.1, H.2.2.2.2.2.2.2.2⟩⟩

/-- The cells after `set_parent_target_pre`, case `l_black_red_R`. -/
theorem pre_l_black_red_R_cells {m : map K V} {p r g : Nat}
    {cg : color_type} {vP vr vg : Option (K × V)} {q1 q2 q3 q4 : ptr}
    (c_p : m.mem p = some { color := black, val := vP, l := some r, r := none, parent := some g })
    (c_r : m.mem r = some { color := red, val := vr, l := q1, r := q2, parent := some p })
    (c_g : m.mem g = some { color := cg, val := vg, l := q3, r := some p, parent := q4 })
    (d_p_g : p ≠ g)
    (d_r_g : r ≠ g)
    (d_p_r : p ≠ r)
    (d_g_r : g ≠ r)
    (t_q3_p : q3 ≠ some p)
    (u_q3_p : some p ≠ q3) :
    ∃ m2, map.set_parent_target_pre m (some p) (some r) = some (Sum.inl m2) ∧
      m2.mem p = some { color := black, val := vP, l := some r, r := none, parent := some g } ∧
      m2.mem r = some { color := black, val := vr, l := q1, r := q2, parent := some g } ∧
      m2.mem g = some { color := cg, val := vg, l := q3, r := some r, parent := q4 } ∧
      (∀ b, b ∉ [g, r] → m2.mem b = m.mem b) ∧
      m2._root = m._root ∧
      m2.brk = m.brk ∧
      m2._sz = m._sz ∧
      m2._cmp_k = m._cmp_k :=
  have hr0 : m._root = m._root := rfl
  Exists.elim (set_r_step (m := m) c_g (some r)) fun m1 S1 =>
  have w1 : m1.mem g = some { color := cg, val := vg, l := q3, r := some r, parent := q4 } := S1.2.1
  Exists.elim (set_parent_step (m := m1) ((S1.2.2.1 r d_r_g).trans c_r) (some g)) fun m2 S2 =>
  have w2 : m2.mem r = some { color := red, val := vr, l := q1, r := q2, parent := some g } :=
    S2.2.1
  have k2_p := (S2.2.2.1 p d_p_r).trans ((S1.2.2.1 p d_p_g).trans c_p)
  Exists.elim (set_color_step (m := m2) w2 black) fun m3 S3 =>
  have w3 : m3.mem r = some { color := black, val := vr, l := q1, r := q2, parent := some g } :=
    S3.2.1
  have xr3 : m3._root = m._root := S3.2.2.2.2.1.trans (S2.2.2.2.2.1.trans (S1.2.2.2.2.1.trans hr0))
  have k3_g := (S3.2.2.1 g d_g_r).trans ((S2.2.2.1 g d_g_r).trans w1)
  have hop : map.set_parent_target_pre m (some p) (some r) = some (Sum.inl m3) := by
    simp only [map.set_parent_target_pre, map.set_parent_target_fix_call, isOnLeft,
      (get_parent_eq (m := m) c_p : get_parent m (some p) = some (some g)),
      (get_l_eq (m := m) c_g : get_l m (some g) = some q3), t_q3_p, u_q3_p,
      (get_parent_eq (m := m) c_p : get_parent m (some p) = some (some g)), S1.1,
      (get_parent_eq (m := m1) ((S1.2.2.1 p d_p_g).trans c_p) : get_parent m1 (some p) = some (some
        g)),
      S2.1, (get_color_eq (m := m2) k2_p : get_color m2 (some p) = some black),
      (get_color_eq (m := m2) w2 : get_color m2 (some r) = some red), S3.1, bind_eq_ub,
      pure_eq_some, ub_bind_some, ne_eq, Option.some.injEq, not_false_eq_true, not_true_eq_false,
      and_self, and_true, true_and, and_false, false_and, if_true, if_false, ite_true, ite_false,
      reduceCtorEq, reduceIte, ite_not, not_not, Bool.not_eq_true, decide_eq_true_eq,
      decide_eq_false_iff_not, decide_True, decide_False, Bool.false_eq_true, eq_self_iff_true,
      Option.isSome_some, Option.isSome_none]
  have h_g : ∀ b, b ∉ [g, r] → b ≠ g := fun b hb e => hb (e ▸ List.Mem.head _)
  have h_r : ∀ b, b ∉ [g, r] → b ≠ r := fun b hb e => hb (e ▸ List.Mem.tail _ (List.Mem.head _))
  ⟨m3, hop, ((S3.2.2.1 p d_p_r).trans k2_p), w3, k3_g, (fun b hb => ((S3.2.2.1 b (h_r b hb)).trans
    ((S2.2.2.1 b (h_r b hb)).trans (S1.2.2.1 b (h_g b hb))))), xr3, (S3.2.2.2.1.trans
    (S2.2.2.2.1.trans S1.2.2.2.1)), (S3.2.2.2.2.2.1.trans (S2.2.2.2.2.2.1.trans S1.2.2.2.2.2.1)),
    (S3.2.2.2.2.2.2.trans (S2.2.2.2.2.2.2.trans S1.2.2.2.2.2.2))⟩

/-- Member `set_parent_target` up to its call of `fixDoubleBlack`, at a black right child whose only child, the left one, is red: the child takes the place and becomes black. -/
theorem pre_l_black_red_R
    {m : map K V} {p r g : Nat} {cg : color_type} {vP vr vg : Option (K × V)}
    {rl rr sg : tree K V} {q : List (frame K V)}
    (h : Rep m (fill ((.R g cg vg sg) :: q)
      (.node p black vP (.node r red vr rl rr) .nil))) :
    ∃ m2, map.set_parent_target_pre m (some p) (some r) = some (Sum.inl m2) ∧
      Rep m2 (fill ((.R g cg vg sg) :: q)
        (.node r black vr rl rr)) ∧ SameAux m m2 :=
  have hs := shaped_fill.1 h.shaped
  have c_p : m.mem p = some { color := black, val := vP, l := some r, r := none, parent := some g }
    := hs.2.1
  have c_r : m.mem r = some { color := red, val := vr, l := rl.top, r := rr.top, parent := some p }
    := hs.2.2.1.1
  have c_g : m.mem g = some { color := cg, val := vg, l := sg.top, r := some p, parent := ptop q }
    := hs.1.1
  have hB : (List.flatten [(pbefore q).map Prod.fst, sg.addrs, [g], rl.addrs, [r], rr.addrs, [p],
    (pafter q).map Prod.fst]).Nodup := by
    have e : (fill ((.R g cg vg sg) :: q) (.node p black vP (.node r red vr rl rr) .nil)).addrs =
        List.flatten [(pbefore q).map Prod.fst, sg.addrs, [g], rl.addrs, [r], rr.addrs, [p],
          (pafter q).map Prod.fst] := by
      rw [fill_addrs]
      simp [pbefore, pafter, pbefore_append, pafter_append, tree.addrs]
    exact e ▸ h.nodup
  Exists.elim (pre_l_black_red_R_cells c_p c_r c_g (blocks_ne_at hB 6 2 rfl rfl rfl) (blocks_ne_at
    hB 4 2 rfl rfl rfl) (blocks_ne_at hB 6 4 rfl rfl rfl) (blocks_ne_at hB 2 4 rfl rfl rfl)
    (tree.top_ne_of_not_mem (blocks_not_mem_at hB 6 1 rfl rfl rfl)) (tree.ne_top_of_not_mem
    (blocks_not_mem_at hB 6 1 rfl rfl rfl))) fun m2 H =>
  have fr := H.2.2.2.2.1
  have a_rl : ∀ b ∈ rl.addrs, m2.mem b = m.mem b :=
    region_agree hB [2, 4] [g, r] 3 rfl rfl rfl fr
  have a_rr : ∀ b ∈ rr.addrs, m2.mem b = m.mem b :=
    region_agree hB [2, 4] [g, r] 5 rfl rfl rfl fr
  have a_sg : ∀ b ∈ sg.addrs, m2.mem b = m.mem b :=
    region_agree hB [2, 4] [g, r] 1 rfl rfl rfl fr
  have a_q : ∀ b ∈ paddrs q, m2.mem b = m.mem b :=
    paddrs_agree (region_agree hB [2, 4] [g, r] 0 rfl rfl rfl fr)
      (region_agree hB [2, 4] [g, r] 7 rfl rfl rfl fr)
  have hroot : m2._root = (fill ((.R g cg vg sg) :: q) (.node r black vr rl rr)).top := by
    rw [H.2.2.2.2.2.1]
    refine h.root.trans ?_
    simp only [fill_L, fill_R, fill_append]
    exact fill_top_congr rfl
  have hpath : ShapedPath m2.mem ((.R g cg vg sg) :: q) (some r) :=
    ⟨H.2.2.2.1, Shaped.agree hs.1.2.1 a_sg, ShapedPath.agree_path hs.1.2.2 a_q⟩
  have htree : Shaped m2.mem (some g) (.node r black vr rl rr) :=
    ⟨H.2.2.1, Shaped.agree hs.2.2.1.2.1 a_rl, Shaped.agree hs.2.2.1.2.2 a_rr⟩
  ⟨m2, H.1, h.of_sub (fill_sublist _ (by simp)) H.2.2.2.2.2.2.1 hroot (shaped_fill.2 ⟨hpath,
    htree⟩), ⟨H.2.2.2.2.2.2.1, H.2.2.2.2.2.2.2.1, H.2.2.2.2.2.2.2.2⟩⟩

end ft

namespace ft
open color_type
variable {K V : Type} [LinearOrder K]

/-! ### The invocations of `fixDoubleBlack` that `erase` makes, on the represented tree -/

theorem pre_leaf_red {m : map K V} {f : frame K V} {q : List (frame K V)} {p : Nat}
    {vP : Option (K × V)} (h : Rep m (fill (f :: q) (.node p red vP .nil .nil))) :
    ∃ m2, map.set_parent_target_pre m (some p) none = some (Sum.inl m2) := by
  cases f with
  | L g cg vg sg => obtain ⟨m2, e, -⟩ := pre_leaf_red_L h; exact ⟨m2, e⟩
  | R g cg vg sg => obtain ⟨m2, e, -⟩ := pre_leaf_red_R h; exact ⟨m2, e⟩

theorem pre_leaf_black {m : map K V} {f : frame K V} {q : List (frame K V)} {p : Nat}
    {vP : Option (K × V)} (h : Rep m (fill (f :: q) (.node p black vP .nil .nil))) :
    ∃ m2, map.set_parent_target_pre m (some p) none =
        some (Sum.inr (m2, none, ptop (f :: q), psib (f :: q))) ∧
      Rep m2 (fill (f :: q) .nil) ∧ SameAux m m2 := by
  cases f with
  | L g cg vg sg => exact pre_leaf_black_L h
  | R g cg vg sg => exact pre_leaf_black_R h

theorem pre_r_red {m : map K V} {f : frame K V} {q : List (frame K V)} {p r : Nat}
    {cr : color_type} {vP vr : Option (K × V)} {rl rr : tree K V}
    (h : Rep m (fill (f :: q) (.node p red vP .nil (.node r cr vr rl rr)))) :
    ∃ m2, map.set_parent_target_pre m (some p) (some r) = some (Sum.inl m2) := by
  cases f with
  | L g cg vg sg => obtain ⟨m2, e, -⟩ := pre_r_red_L h; exact ⟨m2, e⟩
  | R g cg vg sg => obtain ⟨m2, e, -⟩ := pre_r_red_R h; exact ⟨m2, e⟩

theorem pre_r_black_black {m : map K V} {f : frame K V} {q : List (frame K V)} {p r : Nat}
    {vP vr : Option (K × V)} {rl rr : tree K V}
    (h : Rep m (fill (f :: q) (.node p black vP .nil (.node r black vr rl rr)))) :
    ∃ m2, map.set_parent_target_pre m (some p) (some r) =
        some (Sum.inr (m2, some r, ptop (f :: q), psib (f :: q))) ∧
      Rep m2 (fill (f :: q) (.node r black vr rl rr)) ∧ SameAux m m2 := by
  cases f with
  | L g cg vg sg => exact pre_r_black_black_L h
  | R g cg vg sg => exact pre_r_black_black_R h

theorem pre_r_black_red {m : map K V} {f : frame K V} {q : List (frame K V)} {p r : Nat}
    {vP vr : Option (K × V)} {rl rr : tree K V}
    (h : Rep m (fill (f :: q) (.node p black vP .nil (.node r red vr rl rr)))) :
    ∃ m2, map.set_parent_target_pre m (some p) (some r) = some (Sum.inl m2) := by
  cases f with
  | L g cg vg sg => obtain ⟨m2, e, -⟩ := pre_r_black_red_L h; exact ⟨m2, e⟩
  | R g cg vg sg => obtain ⟨m2, e, -⟩ := pre_r_black_red_R h; exact ⟨m2, e⟩

theorem pre_l_red {m : map K V} {f : frame K V} {q : List (frame K V)} {p r : Nat}
    {cr : color_type} {vP vr : Option (K × V)} {rl rr : tree K V}
    (h : Rep m (fill (f :: q) (.node p red vP (.node r cr vr rl rr) .nil))) :
    ∃ m2, map.set_parent_target_pre m (some p) (some r) = some (Sum.inl m2) := by
  cases f with
  | L g cg vg sg => obtain ⟨m2, e, -⟩ := pre_l_red_L h; exact ⟨m2, e⟩
  | R g cg vg sg => obtain ⟨m2, e, -⟩ := pre_l_red_R h; exact ⟨m2, e⟩

theorem pre_l_black_black {m : map K V} {f : frame K V} {q : List (frame K V)} {p r : Nat}
    {vP vr : Option (K × V)} {rl rr : tree K V}
    (h : Rep m (fill (f :: q) (.node p black vP (.node r black vr rl rr) .nil))) :
    ∃ m2, map.set_parent_target_pre m (some p) (some r) =
        some (Sum.inr (m2, some r, ptop (f :: q), psib (f :: q))) ∧
      Rep m2 (fill (f :: q) (.node r black vr rl rr)) ∧ SameAux m m2 := by
  cases f with
  | L g cg vg sg => exact pre_l_black_black_L h
  | R g cg vg sg => exact pre_l_black_black_R h

theorem pre_l_black_red {m : map K V} {f : frame K V} {q : List (frame K V)} {p r : Nat}
    {vP vr : Option (K × V)} {rl rr : tree K V}
    (h : Rep m (fill (f :: q) (.node p black vP (.node r red vr rl rr) .nil))) :
    ∃ m2, map.set_parent_target_pre m (some p) (some r) = some (Sum.inl m2) := by
  cases f with
  | L g cg vg sg => obtain ⟨m2, e, -⟩ := pre_l_black_red_L h; exact ⟨m2, e⟩
  | R g cg vg sg => obtain ⟨m2, e, -⟩ := pre_l_black_red_R h; exact ⟨m2, e⟩

/-- A call of `set_parent_target` that does not call `fixDoubleBlack` gives rise to no
invocation. -/
theorem calls_of_no_fix {m m2 : map K V} {p t : ptr}
    (e : map.set_parent_target_pre m p t = some (Sum.inl m2)) :
    ∃ calls, map.set_parent_target_calls m p t = some calls ∧
      ∀ c ∈ calls, map.at_root c = true ∨ map.sibling_is_data c = true := by
  refine ⟨[], ?_, by simp⟩
  simp only [map.set_parent_target_calls, bind_eq_ub, e, ub_bind_some]
  rfl

/-- A call of `set_parent_target` that calls `fixDoubleBlack` for a black subtree which is one
black node short: every invocation has `x == _root` or a data node as `sibling`. -/
theorem calls_of_fix {m m1 : map K V} {f : frame K V} {q : List (frame K V)} {X : tree K V}
    {k : Nat} {p t : ptr}
    (e : map.set_parent_target_pre m p t =
      some (Sum.inr (m1, X.top, ptop (f :: q), psib (f :: q))))
    (r1 : Rep m1 (fill (f :: q) X)) (hX : Bal X black k)
    (hpb : PathBal (f :: q) black (k + 1)) :
    ∃ calls, map.set_parent_target_calls m p t = some calls ∧
      ∀ c ∈ calls, map.at_root c = true ∨ map.sibling_is_data c = true := by
  have hfuel : 2 * (f :: q).length + 1 ≤ 2 * m1.brk + 2 := by
    have h1 := fill_length (f :: q) X
    have h2 := r1.card_le
    omega
  obtain ⟨calls, e2, hc⟩ :=
    fixDoubleBlack_calls_spec (2 * m1.brk + 2) (f :: q) m1 X k r1 hX hpb hfuel
  refine ⟨calls, ?_, hc⟩
  simp only [map.set_parent_target_calls, bind_eq_ub, e, ub_bind_some]
  exact e2

/-- The invocations of `fixDoubleBlack` for the removal of a data node with at most one
child. -/
theorem unlink_calls {m : map K V} {f : frame K V} {q : List (frame K V)} {p : Nat}
    {c : color_type} {x : K × V} {L R : tree K V} {n : Nat}
    (h : Rep m (fill (f :: q) (.node p c (some x) L R))) (hLR : L = .nil ∨ R = .nil)
    (hb : Bal (.node p c (some x) L R) c n) (hpb : PathBal (f :: q) c n) :
    ∃ calls, map.set_parent_target_calls m (some p)
        (if L.top = none then R.top else L.top) = some calls ∧
      ∀ c ∈ calls, map.at_root c = true ∨ map.sibling_is_data c = true := by
  cases hb with
  | red hl hr =>
    rcases hLR with rfl | rfl
    · cases hl
      rcases hr.height_zero with rfl | ⟨a, rfl⟩ | ⟨a, y, l, r, rfl, -, -⟩
      · obtain ⟨m1, e1⟩ := pre_leaf_red h
        exact calls_of_no_fix e1
      · obtain ⟨m1, e1⟩ := pre_r_red h
        exact calls_of_no_fix e1
      · cases hr
    · cases hr
      rcases hl.height_zero with rfl | ⟨a, rfl⟩ | ⟨a, y, l, r, rfl, -, -⟩
      · obtain ⟨m1, e1⟩ := pre_leaf_red h
        exact calls_of_no_fix e1
      · obtain ⟨m1, e1⟩ := pre_l_red h
        exact calls_of_no_fix (by simpa [tree.top] using e1)
      · cases hl
  | black hl hr =>
    rcases hLR with rfl | rfl
    · cases hl
      rcases hr.height_zero with rfl | ⟨a, rfl⟩ | ⟨a, y, l, r, rfl, hl2, hr2⟩
      · obtain ⟨m1, e1, r1, -⟩ := pre_leaf_black h
        exact calls_of_fix (X := .nil) e1 r1 Bal.nil hpb
      · obtain ⟨m1, e1, r1, -⟩ := pre_r_black_black h
        exact calls_of_fix (X := .node a black none .nil .nil) e1 r1 (Bal.sentinel a) hpb
      · obtain ⟨m1, e1⟩ := pre_r_black_red h
        exact calls_of_no_fix e1
    · cases hr
      rcases hl.height_zero with rfl | ⟨a, rfl⟩ | ⟨a, y, l, r, rfl, hl2, hr2⟩
      · obtain ⟨m1, e1, r1, -⟩ := pre_leaf_black h
        exact calls_of_fix (X := .nil) e1 r1 Bal.nil hpb
      · obtain ⟨m1, e1, r1, -⟩ := pre_l_black_black h
        exact calls_of_fix (X := .node a black none .nil .nil)
          (by simpa [tree.top] using e1) r1 (Bal.sentinel a) hpb
      · obtain ⟨m1, e1⟩ := pre_l_black_red h
        exact calls_of_no_fix (by simpa [tree.top] using e1)

/-- The branch of `erase_rec_calls` for a node with at most one child. -/
theorem erase_rec_calls_simple {m : map K V} {p : Nat} {n : node_type K V}
    (hc : m.mem p = some n) (hsz : m._sz ≠ 1) (hnot : n.l = none ∨ n.r = none) (fuel : Nat) :
    map.erase_rec_calls (fuel + 1) m (some p) =
      map.set_parent_target_calls m (some p) (if n.l = none then n.r else n.l) := by
  simp only [map.erase_rec_calls, hsz, if_false, bind_eq_ub, get_l_eq hc, get_r_eq hc,
    ub_bind_some, pure_eq_some]
  rcases hnot with hl | hr
  · rw [hl]
    cases hr : n.r with
    | none => simp
    | some b => simp
  · rw [hr]
    cases hl : n.l with
    | none => simp
    | some b => simp

/-- The branch of `erase_rec_calls` for a node with two children. -/
theorem erase_rec_calls_two {m : map K V} {p l r : Nat} {n : node_type K V}
    (hc : m.mem p = some n) (hsz : m._sz ≠ 1) (hl : n.l = some l) (hr : n.r = some r)
    (fuel : Nat) :
    map.erase_rec_calls (fuel + 1) m (some p) =
      ub_bind (map.erase_neighbour m (some p)) (fun tmp =>
        ub_bind (map._swap_nodes m (some p) tmp)
          (fun m2 => map.erase_rec_calls fuel m2 (some p))) := by
  simp only [map.erase_rec_calls, map.erase_neighbour, hsz, if_false, bind_eq_ub,
    get_l_eq hc, get_r_eq hc, ub_bind_some, hl, hr, pure_eq_some]
  simp

/-- The invocations of `fixDoubleBlack` that `erase(pos)` at a data node gives rise to, on a
state that satisfies the invariant: each is made with `x == _root` or with a data node as
`sibling`. -/
theorem erase_calls_spec {m : map K V} {T : tree K V} (hI : InvT m T) {p : Nat}
    (hp : p ∈ m.data_nodes) :
    ∃ calls, m.erase_calls (some p) = some calls ∧
      ∀ c ∈ calls, map.at_root c = true ∨ map.sibling_is_data c = true := by
  by_cases h1 : m._sz = 1
  · refine ⟨[], ?_, by simp⟩
    simp [map.erase_calls, map.erase_rec_calls, h1]
  have hR := hI.1
  obtain ⟨x, hx⟩ := hR.mem_data_nodes.1 hp
  obtain ⟨q, c, L, R, rfl⟩ := tree.mem_decomp hx
  have hel : (fill q (.node p c (some x) L R)).elems =
      (pbefore q ++ L.elems) ++ (p, some x) :: (R.elems ++ pafter q) := by
    simp [fill_elems, tree.elems]
  have hpos : 1 ≤ m._sz := by
    rw [hI.size_eq, tree.data, hel]; simp; omega
  have hsz : 2 ≤ m._sz := by omega
  have hbrk := hI.three_le_brk hsz
  obtain ⟨m1, f, q1, c1, L1, R1, n1, r1, hLR, hb1, hpb1, sa, hcase⟩ :=
    erase_unlink_point hI hsz
  have hc1 := Rep.cell r1
  have hc := Rep.cell hR
  have hsz1 : m1._sz ≠ 1 := by rw [sa.2.1]; omega
  have hnot : (tree.top L1 = none ∨ tree.top R1 = none) := by
    rcases hLR with rfl | rfl
    · exact Or.inl rfl
    · exact Or.inr rfl
  obtain ⟨calls, e, hok⟩ := unlink_calls r1 hLR hb1 hpb1
  have hsimp := fun fuel => erase_rec_calls_simple hc1 hsz1 hnot fuel
  refine ⟨calls, ?_, hok⟩
  obtain ⟨k, hk⟩ : ∃ k, m.brk + 1 = k + 2 := ⟨m.brk - 1, by omega⟩
  rw [map.erase_calls, hk]
  rcases hcase with ⟨-, rfl⟩ | ⟨hl, hr, t, hnb, hsw⟩
  · rw [hsimp (k + 1)]
    exact e
  · cases L with
    | nil => exact absurd rfl hl
    | node l cl vl ll lr =>
      cases R with
      | nil => exact absurd rfl hr
      | node r cr vr rl rr =>
        rw [erase_rec_calls_two hc (by omega) (l := l) (r := r) rfl rfl (k + 1), hnb]
        simp only [ub_bind_some, hsw]
        rw [hsimp k]
        exact e

/-! ### The colour of the end nodes -/

/-- In a state that satisfies the invariant every node of the tree without payload is
black. -/
theorem InvT.end_nodes_black {m : map K V} {T : tree K V} (hI : InvT m T) {a : Nat}
    (ha : a ∈ m.nodes) (hv : m.payload a = none) : get_color m (some a) = some black := by
  have hR := hI.1
  rw [hR.nodes_eq, tree.addrs, List.mem_map] at ha
  obtain ⟨⟨a2, v⟩, hmem, rfl⟩ := ha
  have hv2 := hR.payload_eq hmem
  rw [hv] at hv2
  subst hv2
  rcases hI.2.2 with ⟨-, a1, b1, rfl⟩ | ⟨hG, -⟩
  · rw [skeleton_elems] at hmem
    simp only [List.mem_cons, Prod.mk.injEq, and_true, List.mem_singleton, List.not_mem_nil,
      or_false] at hmem
    rcases hmem with rfl | rfl
    · have hc := Rep.cell (p := []) hR
      rw [get_color_eq hc]
    · have hc := Rep.cell (p := [.R a1 black none .nil]) hR
      rw [get_color_eq hc]
  · obtain ⟨q, c, L, R, rfl⟩ := tree.mem_decomp hmem
    obtain ⟨n0, hb⟩ := hG.bal
    have hdp := Bal.data_path hb (by simp)
    obtain ⟨c2, n2, hbt, -⟩ := Bal.unfill hb hdp
    have hc := Rep.cell hR
    rw [get_color_eq hc]
    cases hbt
    rfl

set_option maxRecDepth 100000 in
theorem reachable_black3 : Reachable black3 :=
  Reachable.erase (m := sample4) (a := 5)
    (reachable_build [(5, 50), (3, 30), (8, 80), (1, 10)] (by rfl)) (by decide) (by rfl)

end ft

namespace ft
open color_type
variable {K V : Type} [DecidableEq K]

/-! ### The instrumented functions agree with the members they follow -/

theorem ub_bind_assoc {α β γ : Type} (x : Option α) (f : α → Option β) (g : β → Option γ) :
    ub_bind (ub_bind x f) g = ub_bind x (fun a => ub_bind (f a) g) := by
  cases x <;> rfl

theorem ub_bind_ite {α β : Type} (c : Prop) [Decidable c] (x y : Option α) (g : α → Option β) :
    ub_bind (if c then x else y) g = if c then ub_bind x g else ub_bind y g := by
  split <;> rfl

theorem ub_bind_ret {α : Type} (x : Option α) : ub_bind x (fun a => some a) = x := by
  cases x <;> rfl

/-- Member `fixDoubleBlack` is its first turn followed by the self-call that the turn asks
for. -/
theorem fixDoubleBlack_succ (fuel : Nat) (m : map K V) (x p s : ptr) :
    map.fixDoubleBlack (fuel + 1) m x p s =
      ub_bind (map.fixDoubleBlack_step m x p s) (fun r =>
        match r with
        | .inl m2 => some m2
        | .inr c => map.fixDoubleBlack fuel c.1 c.2.1 c.2.2.1 c.2.2.2) := by
  simp only [map.fixDoubleBlack, map.fixDoubleBlack_step, bind_eq_ub, pure_eq_some]
  split
  · rfl
  · split
    · simp only [ub_bind_assoc, ub_bind_some]
    · simp only [ub_bind_assoc, ub_bind_ite, ub_bind_some, ub_bind_ret]


/-- The two calls of `fixDoubleBlack` in `set_parent_target` are calls with the invocation
that `set_parent_target_fix_call` returns. -/
theorem set_parent_target_fix_eq (m : map K V) (p : ptr) (isleft : Bool) :
    map.set_parent_target_fix m p isleft =
      ub_bind (map.set_parent_target_fix_call m p isleft) (fun c =>
        map.fixDoubleBlack (2 * c.1.brk + 2) c.1 c.2.1 c.2.2.1 c.2.2.2) := by
  simp only [map.set_parent_target_fix, map.set_parent_target_fix_call, bind_eq_ub,
    pure_eq_some, ub_bind_assoc, ub_bind_ite, ub_bind_some]

/-- Member `set_parent_target` is `set_parent_target_pre` followed by the call of
`fixDoubleBlack` that it asks for. -/
theorem set_parent_target_eq (m : map K V) (p t : ptr) :
    map.set_parent_target m p t =
      ub_bind (map.set_parent_target_pre m p t) (fun r =>
        match r with
        | .inl m2 => some m2
        | .inr c => map.fixDoubleBlack (2 * c.1.brk + 2) c.1 c.2.1 c.2.2.1 c.2.2.2) := by
  simp only [map.set_parent_target, map.set_parent_target_pre, set_parent_target_fix_eq,
    bind_eq_ub, pure_eq_some, ub_bind_assoc, ub_bind_ite, ub_bind_some, ub_bind_ret]

end ft

namespace ft
open color_type
variable {K V : Type} [LinearOrder K]

/-! ### The end nodes and their neighbours -/

/-- A path without node before its hole hangs its subtree as a left child. -/
theorem pbefore_nil_cons {f : frame K V} {q : List (frame K V)} (h : pbefore (f :: q) = []) :
    ∃ a c v r, f = .L a c v r ∧ pbefore q = [] := by
  cases f with
  | L a c v r => exact ⟨a, c, v, r, rfl, h⟩
  | R a c v l => simp [pbefore] at h

/-- A path without node after its hole hangs its subtree as a right child. -/
theorem pafter_nil_cons {f : frame K V} {q : List (frame K V)} (h : pafter (f :: q) = []) :
    ∃ a c v l, f = .R a c v l ∧ pafter q = [] := by
  cases f with
  | L a c v r => simp [pafter] at h
  | R a c v l => exact ⟨a, c, v, l, rfl, h⟩

/-- The first node of the in-order sequence, if it has no payload, is a black childless node
and the left child of the second node. -/
theorem low_end_spec {m : map K V} {T : tree K V} {c0 : color_type} {n0 : Nat} (hR : Rep m T)
    (hb : Bal T c0 n0) {lo b : Nat} {xb : K × V} {rest : List (Nat × Option (K × V))}
    (e3 : T.elems = (lo, none) :: (b, some xb) :: rest) :
    m.mem lo = some { color := black, val := none, l := none, r := none, parent := some b } ∧
      get_l m (some b) = some (some lo) := by
  have hnd : (T.elems.map Prod.fst).Nodup := hR.nodup
  have hlo : (lo, (none : Option (K × V))) ∈ T.elems := by rw [e3]; simp
  obtain ⟨q, c, L, R, rfl⟩ := tree.mem_decomp hlo
  have hdp := Bal.data_path hb (by simp)
  obtain ⟨c2, n2, hbt, -⟩ := Bal.unfill hb hdp
  cases hbt
  have hel : (fill q (.node lo black (none : Option (K × V)) .nil .nil)).elems =
      pbefore q ++ (lo, none) :: pafter q := by
    simp [fill_elems, tree.elems]
  have e5 : (fill q (.node lo black (none : Option (K × V)) .nil .nil)).elems =
      [] ++ (lo, none) :: ((b, some xb) :: rest) := by rw [e3]; rfl
  obtain ⟨hpb, hpa⟩ := split_unique hnd hel e5
  cases q with
  | nil => simp [pafter] at hpa
  | cons f q2 =>
    obtain ⟨a, ca, va, r, rfl, -⟩ := pbefore_nil_cons hpb
    simp only [pafter, List.cons_append, List.cons.injEq, Prod.mk.injEq] at hpa
    obtain ⟨⟨rfl, rfl⟩, -⟩ := hpa
    have h1 := Rep.cell hR
    have h2 := Rep.cell (p := q2) hR
    exact ⟨h1, by rw [get_l_eq h2]; rfl⟩

/-- The last node of the in-order sequence, if it has no payload, is a black childless node
and the right child of the node before it. -/
theorem high_end_spec {m : map K V} {T : tree K V} {c0 : color_type} {n0 : Nat} (hR : Rep m T)
    (hb : Bal T c0 n0) {hi e : Nat} {xe : K × V} {init : List (Nat × Option (K × V))}
    (e3 : T.elems = init ++ [(e, some xe), (hi, none)]) :
    m.mem hi = some { color := black, val := none, l := none, r := none, parent := some e } ∧
      get_r m (some e) = some (some hi) := by
  have hnd : (T.elems.map Prod.fst).Nodup := hR.nodup
  have hhi : (hi, (none : Option (K × V))) ∈ T.elems := by rw [e3]; simp
  obtain ⟨q, c, L, R, rfl⟩ := tree.mem_decomp hhi
  have hdp := Bal.data_path hb (by simp)
  obtain ⟨c2, n2, hbt, -⟩ := Bal.unfill hb hdp
  cases hbt
  have hel : (fill q (.node hi black (none : Option (K × V)) .nil .nil)).elems =
      pbefore q ++ (hi, none) :: pafter q := by
    simp [fill_elems, tree.elems]
  have e5 : (fill q (.node hi black (none : Option (K × V)) .nil .nil)).elems =
      (init ++ [(e, some xe)]) ++ (hi, none) :: [] := by rw [e3]; simp
  obtain ⟨hpb, hpa⟩ := split_unique hnd hel e5
  cases q with
  | nil => simp [pbefore] at hpb
  | cons f q2 =>
    obtain ⟨a, ca, va, l, rfl, -⟩ := pafter_nil_cons hpa
    simp only [pbefore] at hpb
    have h5 := (List.append_inj' hpb rfl).2
    simp only [List.cons.injEq, Prod.mk.injEq, and_true] at h5
    obtain ⟨rfl, rfl⟩ := h5
    have h1 := Rep.cell hR
    have h2 := Rep.cell (p := q2) hR
    exact ⟨h1, by rw [get_r_eq h2]; rfl⟩

/-- The end nodes of a non-empty map: both are black and childless; the low end node is the
left child of the first data node, the high end node is the right child of the last data
node. -/
theorem end_nodes_spec {m : map K V} {T : tree K V} (hI : InvT m T) (hsz : m._sz ≠ 0) :
    ∃ (lo hi b e : Nat) (xb xe : K × V) (mid : List (Nat × Option (K × V))),
      T.elems = (lo, none) :: (mid ++ [(hi, none)]) ∧ (∀ y ∈ mid, y.2 ≠ none) ∧
      mid.head? = some (b, some xb) ∧ mid.getLast? = some (e, some xe) ∧
      m.mem lo = some { color := black, val := none, l := none, r := none, parent := some b } ∧
      m.mem hi = some { color := black, val := none, l := none, r := none, parent := some e } ∧
      get_l m (some b) = some (some lo) ∧ get_r m (some e) = some (some hi) := by
  have hR := hI.1
  have hG := hI.good hsz
  obtain ⟨n0, hb⟩ := hG.bal
  obtain ⟨lo, hi, mid, e3, hm⟩ := hG.framed
  have hmid : mid ≠ [] := by
    rintro rfl
    apply hG.nonempty
    rw [tree.data, e3]
    rfl
  obtain ⟨b, xb, mid2, hmid2⟩ : ∃ b xb mid2, mid = (b, some xb) :: mid2 := by
    cases mid with
    | nil => exact absurd rfl hmid
    | cons y mid2 =>
      obtain ⟨b, v⟩ := y
      have := hm (b, v) (List.mem_cons_self _ _)
      cases v with
      | none => exact absurd rfl this
      | some xb => exact ⟨b, xb, mid2, rfl⟩
  obtain ⟨init, e, xe, hinit⟩ : ∃ init e xe, mid = init ++ [(e, some xe)] := by
    rcases List.eq_nil_or_concat mid with h | ⟨init, y, hy⟩
    · exact absurd h hmid
    · obtain ⟨e, v⟩ := y
      have := hm (e, v) (by rw [hy]; simp)
      cases v with
      | none => exact absurd rfl this
      | some xe => exact ⟨init, e, xe, by simpa using hy⟩
  have e6 : T.elems = (lo, none) :: (b, some xb) :: (mid2 ++ [(hi, none)]) := by
    rw [e3, hmid2]; rfl
  obtain ⟨h1, h2⟩ := low_end_spec hR hb e6
  have e7 : T.elems = ((lo, none) :: init) ++ [(e, some xe), (hi, none)] := by
    rw [e3, hinit]; simp
  obtain ⟨h3, h4⟩ := high_end_spec hR hb e7
  exact ⟨lo, hi, b, e, xb, xe, mid, e3, hm, by rw [hmid2]; rfl, by rw [hinit]; simp, h1, h3,
    h2, h4⟩

end ft

namespace ft
open color_type
variable {K V : Type} [LinearOrder K]

/-! ### The mutators as functions on the in-order sequence -/

theorem filter_lt_split {A B : List (K × V)} {k : K} (hA : ∀ y ∈ A, y.1 < k)
    (hB : ∀ y ∈ B, k < y.1) :
    (A ++ B).filter (fun y => decide (y.1 < k)) = A ∧
      (A ++ B).filter (fun y => decide (k < y.1)) = B := by
  constructor
  · rw [List.filter_append, List.filter_eq_self.2, List.filter_eq_nil_iff.2, List.append_nil]
    · intro y hy
      simpa using le_of_lt (hB y hy)
    · intro y hy
      simpa using hA y hy
  · rw [List.filter_append, List.filter_eq_nil_iff.2, List.filter_eq_self.2, List.nil_append]
    · intro y hy
      simpa using hB y hy
    · intro y hy
      simpa using le_of_lt (hA y hy)

/-- The size of a state that satisfies the invariant is the length of its sequence. -/
theorem InvT.size_to_list {m : map K V} {T : tree K V} (hI : InvT m T) :
    m.size = m.to_list.length := by
  rw [hI.1.to_list_eq]; exact hI.size_eq

/-- Member `insert` acts on the in-order sequence as `list_insert`. -/
theorem insert_to_list {m : map K V} {T : tree K V} (hI : InvT m T) (x : K × V) :
    ∃ m2 it b T2, m.insert x = some (m2, some it, b) ∧ InvT m2 T2 ∧
      m2.to_list = list_insert m.to_list x := by
  have hk := hI.1.keys_eq
  rcases insert_spec hI x with ⟨a, w, hmem, e⟩ | ⟨m2, T2, pre, post, e, i2, -, -, hT, hT2,
    hlt, hgt⟩
  · refine ⟨m, a, false, T, e, hI, ?_⟩
    have h1 : x.1 ∈ m.to_list.map Prod.fst := by
      rw [← map.keys, hk]
      exact mem_ekeys.2 ⟨a, w, hmem⟩
    rw [list_insert, if_pos h1]
  · refine ⟨m2, m.brk, true, T2, e, i2, ?_⟩
    have h0 : x.1 ∉ m.to_list.map Prod.fst := by
      rw [← map.keys, hk, hT]
      exact not_mem_of_split hlt hgt
    have hA : ∀ y ∈ pre.filterMap Prod.snd, y.1 < x.1 :=
      fun y hy => hlt y.1 (List.mem_map.2 ⟨y, hy, rfl⟩)
    have hB : ∀ y ∈ post.filterMap Prod.snd, x.1 < y.1 :=
      fun y hy => hgt y.1 (List.mem_map.2 ⟨y, hy, rfl⟩)
    have hl : m.to_list = pre.filterMap Prod.snd ++ post.filterMap Prod.snd := by
      rw [hI.1.to_list_eq, tree.data, hT, List.filterMap_append]
    obtain ⟨f1, f2⟩ := filter_lt_split hA hB
    rw [list_insert, if_neg h0, hl, f1, f2, i2.1.to_list_eq, tree.data, hT2,
      List.filterMap_append]
    rfl

/-- Member `erase(key)` acts on the in-order sequence as `list_erase`. -/
theorem erase_key_to_list {m : map K V} {T : tree K V} (hI : InvT m T) (k : K) :
    ∃ m2 n T2, m.erase_key k = some (m2, n) ∧ InvT m2 T2 ∧
      m2.to_list = list_erase m.to_list k := by
  have hk := hI.1.keys_eq
  rcases erase_key_spec hI k with ⟨hno, e⟩ | ⟨a, v, m2, hmem, e, e2⟩
  · refine ⟨m, 0, T, e, hI, ?_⟩
    rw [list_erase, List.filter_eq_self.2]
    intro y hy
    have : y.1 ∈ m.keys := List.mem_map.2 ⟨y, hy, rfl⟩
    rw [hk] at this
    simp only [ne_eq, decide_not, Bool.not_eq_true', decide_eq_false_iff_not]
    rintro rfl
    exact hno this
  · obtain ⟨m3, T2, pre, post, e3, i2, -, hT, hd, -⟩ := erase_spec hI hmem
    rw [e2] at e3
    simp only [Option.some.injEq] at e3
    subst e3
    refine ⟨m2, 1, T2, e, i2, ?_⟩
    have hs := hI.sorted
    rw [hT] at hs
    have hno := not_mem_of_sorted hs
    rw [i2.1.to_list_eq, hd, hI.1.to_list_eq, tree.data, hT, list_erase]
    simp only [List.filterMap_append, List.filterMap_cons, List.filter_append,
      List.filter_cons, ne_eq, not_true_eq_false, decide_False, Bool.false_eq_true, if_false]
    rw [ekeys_append, List.mem_append, not_or] at hno
    congr 1
    · symm
      rw [List.filter_eq_self]
      intro y hy
      simp only [decide_not, Bool.not_eq_true', decide_eq_false_iff_not]
      rintro rfl
      exact hno.1 (List.mem_map.2 ⟨y, hy, rfl⟩)
    · symm
      rw [List.filter_eq_self]
      intro y hy
      simp only [decide_not, Bool.not_eq_true', decide_eq_false_iff_not]
      rintro rfl
      exact hno.2 (List.mem_map.2 ⟨y, hy, rfl⟩)

/-- The in-order sequence of a skeleton of two end nodes is empty. -/
theorem skeleton_to_list {m : map K V} {a b : Nat} (hI : InvT m (skeleton a b)) :
    m.to_list = [] := by
  rw [hI.1.to_list_eq, tree.data, skeleton_elems]; rfl

/-- An operation acts on the in-order sequence as `list_apply_op`, and keeps the
invariant. -/
theorem apply_op_to_list {m : map K V} (hI : Inv m) (o : map_op K V) :
    ∃ m2, m.apply_op o = some m2 ∧ Inv m2 ∧ m2.to_list = list_apply_op m.to_list o := by
  obtain ⟨T, hT⟩ := hI
  cases o with
  | insert x =>
    obtain ⟨m2, it, b, T2, e, i2, hl⟩ := insert_to_list hT x
    exact ⟨m2, by simp [map.apply_op, e], ⟨T2, i2⟩, hl⟩
  | erase_key k =>
    obtain ⟨m2, n, T2, e, i2, hl⟩ := erase_key_to_list hT k
    exact ⟨m2, by simp [map.apply_op, e], ⟨T2, i2⟩, hl⟩
  | clear =>
    obtain ⟨m2, e, i2, -⟩ := clear_inv hT
    exact ⟨m2, e, ⟨_, i2⟩, skeleton_to_list i2⟩

/-- A sequence of operations acts on the in-order sequence as `list_run_ops`, and keeps the
invariant. -/
theorem run_ops_to_list : ∀ (ops : List (map_op K V)) {m : map K V}, Inv m →
    ∃ m2, m.run_ops ops = some m2 ∧ Inv m2 ∧ m2.to_list = list_run_ops ops m.to_list ∧
      m2.size = (list_run_ops ops m.to_list).length := by
  intro ops
  induction ops with
  | nil =>
    intro m hI
    obtain ⟨T, hT⟩ := hI
    exact ⟨m, rfl, ⟨T, hT⟩, rfl, hT.size_to_list⟩
  | cons o os ih =>
    intro m hI
    obtain ⟨m1, e1, i1, l1⟩ := apply_op_to_list hI o
    obtain ⟨m2, e2, i2, l2, s2⟩ := ih i1
    refine ⟨m2, ?_, i2, ?_, ?_⟩
    · simp [map.run_ops, e1, e2]
    · rw [l2, l1]; rfl
    · rw [s2, l1]; rfl

end ft

namespace ft
open color_type
variable {K V : Type} [LinearOrder K]

/-! ### The state of an empty map -/

/-- A state that satisfies the invariant with the skeleton of two end nodes looks like a
default-constructed map: its tree is the skeleton, `begin()` is `end()`, and every sequence
of operations leaves the same in-order sequence and the same size as on the
default-constructed map. -/
theorem skeleton_like_default {m : map K V} {a b : Nat} (hI : InvT m (skeleton a b))
    (hsz : m._sz = 0) :
    m.is_skeleton ∧ m.begin = m.end_ ∧ m.to_list = [] ∧
      ∀ ops : List (map_op K V), ∃ m0 r r0, map.mk_default less = some m0 ∧
        m.run_ops ops = some r ∧ m0.run_ops ops = some r0 ∧ r.to_list = r0.to_list ∧
        r.size = r0.size := by
  have hR := hI.1
  have hl := skeleton_to_list hI
  refine ⟨⟨a, b, hR.root, Rep.cell (p := []) hR, Rep.cell (p := [.R a black none .nil]) hR, ?_,
    hsz⟩, begin_empty hsz, hl, ?_⟩
  · rw [hR.nodes_eq, tree.addrs, skeleton_elems]; rfl
  · intro ops
    obtain ⟨m0, e0, i0, -, -⟩ := default_inv (K := K) (V := V)
    obtain ⟨r, e1, -, l1, s1⟩ := run_ops_to_list ops ⟨_, hI⟩
    obtain ⟨r0, e2, -, l2, s2⟩ := run_ops_to_list ops ⟨_, i0⟩
    refine ⟨m0, r, r0, e0, e1, e2, ?_, ?_⟩
    · rw [l1, l2, hl, skeleton_to_list i0]
    · rw [s1, s2, hl, skeleton_to_list i0]

set_option maxRecDepth 100000 in
theorem reachable_sample1 : Reachable sample1 :=
  reachable_build [(5, 50)] (by rfl)

end ft

namespace ft
open color_type
variable {K V : Type} [LinearOrder K]

/-! ### Writing through the reference that `operator[]` returns -/

/-- The red-black shape of a tree does not change when a subtree that is not empty is
replaced by one of the same shape. -/
theorem Bal.fill_congr : ∀ (p : List (frame K V)) {t t2 : tree K V}, t ≠ .nil →
    (∀ c n, Bal t c n → Bal t2 c n) → ∀ c0 n0, Bal (fill p t) c0 n0 → Bal (fill p t2) c0 n0 := by
  intro p
  induction p with
  | nil => intro t t2 _ H c0 n0 h; exact H c0 n0 h
  | cons f p ih =>
    intro t t2 ht H c0 n0 h
    cases f with
    | L a c v r =>
      refine ih (t := .node a c v t r) (by simp) ?_ c0 n0 h
      intro c1 n1 h1
      cases h1 with
      | sentinel => exact absurd rfl ht
      | red hl hr => exact Bal.red (H _ _ hl) hr
      | black hl hr => exact Bal.black (H _ _ hl) hr
    | R a c v l =>
      refine ih (t := .node a c v l t) (by simp) ?_ c0 n0 h
      intro c1 n1 h1
      cases h1 with
      | sentinel => exact absurd rfl ht
      | red hl hr => exact Bal.red hl (H _ _ hr)
      | black hl hr => exact Bal.black hl (H _ _ hr)

/-- Writing the `second` of the payload of a data node. -/
theorem Rep.write_second {m : map K V} {p : List (frame K V)} {a : Nat} {c : color_type}
    {x : K × V} {l r : tree K V} (h : Rep m (fill p (.node a c (some x) l r))) (v : V) :
    ∃ m2, map.write_second m (some a) v = some m2 ∧
      Rep m2 (fill p (.node a c (some (x.1, v)) l r)) ∧ SameAux m m2 := by
  have hc := h.cell
  obtain ⟨hal, har, hap, -, -, -, -, -, -⟩ := h.distinct
  have e : map.write_second m (some a) v =
      store m (some a) (fun n => { n with val := some (x.1, v) }) := by
    simp only [map.write_second, bind_eq_ub, get_val_eq hc, ub_bind_some]
  refine ⟨_, e.trans (store_eq hc _), ?_, SameAux.rfl⟩
  refine h.of_addrs_eq (fill_addrs_congr (by simp)) (Eq.refl _) ?_ ?_
  · exact h.root.trans (fill_top_congr (by simp))
  · obtain ⟨hs1, hs2, hs3, hs4⟩ := shaped_fill.1 h.shaped
    refine shaped_fill.2 ⟨hs1.upd_path hap _, ?_, hs3.upd hal _, hs4.upd har _⟩
    simp

/-- Writing the `second` of the payload of a data node keeps the invariant and replaces the
value in the in-order sequence; `find` of the key then returns that node. -/
theorem write_second_spec {m : map K V} {T : tree K V} (hI : InvT m T) {a : Nat} {x : K × V}
    (ha : (a, some x) ∈ T.elems) (v : V) :
    ∃ m2 T2 pre post, map.write_second m (some a) v = some m2 ∧ InvT m2 T2 ∧
      T.elems = pre ++ (a, some x) :: post ∧ T2.elems = pre ++ (a, some (x.1, v)) :: post ∧
      m2.find x.1 = some (some a) ∧ m2._sz = m._sz := by
  obtain ⟨q, c, L, R, rfl⟩ := tree.mem_decomp ha
  obtain ⟨m2, e, r2, sa⟩ := Rep.write_second hI.1 v
  have hel : (fill q (.node a c (some x) L R)).elems =
      (pbefore q ++ L.elems) ++ (a, some x) :: (R.elems ++ pafter q) := by
    simp [fill_elems, tree.elems]
  have hel2 : (fill q (.node a c (some (x.1, v)) L R)).elems =
      (pbefore q ++ L.elems) ++ (a, some (x.1, v)) :: (R.elems ++ pafter q) := by
    simp [fill_elems, tree.elems]
  have hsz : m._sz ≠ 0 := by
    intro h0
    have := hI.size_eq
    rw [h0, tree.data, hel] at this
    simp at this
    omega
  have hG := hI.good hsz
  have hk : ekeys (fill q (.node a c (some (x.1, v)) L R)).elems =
      ekeys (fill q (.node a c (some x) L R)).elems := by
    rw [hel, hel2]; simp [ekeys_append, ekeys_cons_some]
  have hlen : (fill q (.node a c (some (x.1, v)) L R)).data.length =
      (fill q (.node a c (some x) L R)).data.length := by
    rw [tree.data_length, tree.data_length, hk]
  have i2 : InvT m2 (fill q (.node a c (some (x.1, v)) L R)) := by
    refine ⟨r2, sa.2.2.trans hI.2.1, Or.inr ⟨⟨?_, ?_, ?_, ?_⟩, ?_⟩⟩
    · obtain ⟨lo, hi, mid, e3, hm⟩ := hG.framed
      rw [hel] at e3
      rw [hel2]
      cases hp : pbefore q ++ L.elems with
      | nil =>
        rw [hp] at e3
        simp at e3
      | cons y pre2 =>
        rw [hp] at e3
        simp only [List.cons_append, List.cons.injEq] at e3
        obtain ⟨rfl, e4⟩ := e3
        rcases List.eq_nil_or_concat (R.elems ++ pafter q) with hq | ⟨post2, z, hq⟩
        · rw [hq] at e4
          have := (List.append_inj' e4 rfl).2
          simp at this
        · rw [List.concat_eq_append] at hq
          rw [hq] at e4 ⊢
          have e5 : (pre2 ++ (a, some x) :: post2) ++ [z] = mid ++ [(hi, none)] := by
            simpa using e4
          obtain ⟨e6, e7⟩ := List.append_inj' e5 rfl
          simp only [List.cons.injEq, and_true] at e7
          subst e7
          refine ⟨lo, hi, pre2 ++ (a, some (x.1, v)) :: post2, by simp, ?_⟩
          intro y hy
          simp only [List.mem_append, List.mem_cons] at hy
          rcases hy with hy | rfl | hy
          · exact hm y (by rw [← e6]; simp [hy])
          · simp
          · exact hm y (by rw [← e6]; simp [hy])
    · intro h0
      have := congrArg List.length h0
      rw [hlen] at this
      exact hG.nonempty (List.eq_nil_of_length_eq_zero this)
    · rw [hk]; exact hG.sorted
    · obtain ⟨n0, hb⟩ := hG.bal
      exact ⟨n0, Bal.fill_congr q (by simp) (fun c1 n1 h1 => h1.relabel) _ _ hb⟩
    · rw [hlen, sa.2.1]
      exact hI.size_eq
  refine ⟨m2, _, _, _, e, i2, hel, hel2, ?_, sa.2.1⟩
  rcases find_spec i2 x.1 with ⟨a2, v2, e2, hmem⟩ | ⟨-, hno⟩
  · rw [e2]
    have hs := i2.sorted
    rw [hel2] at hs
    have hno := not_mem_of_sorted hs
    rw [hel2, List.mem_append, List.mem_cons] at hmem
    simp only [Prod.mk.injEq] at hmem
    rcases hmem with h1 | ⟨rfl, -⟩ | h1
    · exfalso
      apply hno
      rw [ekeys_append, List.mem_append]
      exact Or.inl (mem_ekeys.2 ⟨a2, v2, h1⟩)
    · rfl
    · exfalso
      apply hno
      rw [ekeys_append, List.mem_append]
      exact Or.inr (mem_ekeys.2 ⟨a2, v2, h1⟩)
  · exfalso
    apply hno
    rw [hel2]
    exact mem_ekeys.2 ⟨a, v, by simp⟩

end ft

namespace ft
open color_type
variable {K V : Type}

/-! ### The scans of `lower_bound` and `upper_bound` -/

theorem first_failing_append (p : K → Bool) (d : Nat) :
    ∀ (A B : List (Nat × Option (K × V))),
    first_failing p (A ++ B) d = first_failing p A (first_failing p B d) := by
  intro A B
  induction A with
  | nil => rfl
  | cons e A ih =>
    obtain ⟨a, v⟩ := e
    cases v with
    | none => simpa [first_failing] using ih
    | some kv =>
      by_cases hp : p kv.1 = true
      · simpa [first_failing, hp] using ih
      · simp [first_failing, hp]

theorem first_failing_all (p : K → Bool) (d : Nat) :
    ∀ (A : List (Nat × Option (K × V))), (∀ k ∈ ekeys A, p k = true) →
    first_failing p A d = d := by
  intro A
  induction A with
  | nil => intro _; rfl
  | cons e A ih =>
    intro h
    obtain ⟨a, v⟩ := e
    cases v with
    | none =>
      simp only [ekeys_cons_none] at h
      simpa [first_failing] using ih h
    | some kv =>
      simp only [ekeys_cons_some, List.mem_cons, forall_eq_or_imp] at h
      simpa [first_failing, h.1] using ih h.2

theorem first_failing_congr {p q : K → Bool} (d : Nat) :
    ∀ (A : List (Nat × Option (K × V))), (∀ k ∈ ekeys A, p k = q k) →
    first_failing p A d = first_failing q A d := by
  intro A
  induction A with
  | nil => intro _; rfl
  | cons e A ih =>
    intro h
    obtain ⟨a, v⟩ := e
    cases v with
    | none =>
      simp only [ekeys_cons_none] at h
      simpa [first_failing] using ih h
    | some kv =>
      simp only [ekeys_cons_some, List.mem_cons, forall_eq_or_imp] at h
      simp [first_failing, h.1, ih h.2]

/-- The scan stops at the first entry whose key fails the test: the entries before it pass
the test, and the result is the default when there is no such entry. -/
theorem first_failing_split (p : K → Bool) (d : Nat) :
    ∀ (es : List (Nat × Option (K × V))), (∀ e ∈ es, e.2 ≠ none) →
    ∃ A B, es = A ++ B ∧ (∀ e ∈ A, ∃ kv, e.2 = some kv ∧ p kv.1 = true) ∧
      ((B = [] ∧ first_failing p es d = d) ∨
        ∃ a kv rest, B = (a, some kv) :: rest ∧ p kv.1 = false ∧ first_failing p es d = a) := by
  intro es
  induction es with
  | nil => intro _; exact ⟨[], [], rfl, by simp, Or.inl ⟨rfl, rfl⟩⟩
  | cons e es ih =>
    intro h
    obtain ⟨a, v⟩ := e
    cases v with
    | none => exact absurd rfl (h (a, none) (List.mem_cons_self _ _))
    | some kv =>
      by_cases hp : p kv.1 = true
      · obtain ⟨A, B, e1, hA, hB⟩ := ih (fun e he => h e (List.mem_cons_of_mem _ he))
        refine ⟨(a, some kv) :: A, B, by rw [e1]; rfl, ?_, ?_⟩
        · intro e he
          rcases List.mem_cons.1 he with rfl | he
          · exact ⟨kv, rfl, hp⟩
          · exact hA e he
        · simpa [first_failing, hp] using hB
      · refine ⟨[], (a, some kv) :: es, rfl, by simp, Or.inr ⟨a, kv, es, rfl, ?_, ?_⟩⟩
        · simpa using hp
        · simp [first_failing, hp]

/-- The value of a node of the tree, read from the memory. -/
theorem Rep.get_val_mem {m : map K V} {T : tree K V} (h : Rep m T) {a : Nat}
    {v : Option (K × V)} (ha : (a, v) ∈ T.elems) : get_val m (some a) = some v := by
  obtain ⟨q, c, L, R, rfl⟩ := tree.mem_decomp ha
  rw [get_val_eq (Rep.cell h)]

section order
variable [LinearOrder K]

/-- The descent of `lower_bound` on a sorted red-black subtree, with the comparator `less`:
the first node of the subtree whose key is not less than `k`, and the candidate if there is
none. -/
theorem lower_bound_descent_rec_spec (k : K) {t : tree K V} {c0 : color_type} {n0 : Nat}
    (hb : Bal t c0 n0) : ∀ (m : map K V) (par : ptr) (fuel : Nat) (best : Nat),
    Shaped m.mem par t → m._cmp_k = less → (ekeys t.elems).Pairwise (· < ·) →
    t.height < fuel →
    map.lower_bound_descent_rec fuel m t.top (some best) k =
      some (some (first_failing (fun x => decide (x < k)) t.elems best)) := by
  have step : ∀ (a : Nat) (c : color_type) (x : K × V) (l r : tree K V),
      (∀ (m : map K V) (par : ptr) (fuel : Nat) (best : Nat),
        Shaped m.mem par l → m._cmp_k = less → (ekeys l.elems).Pairwise (· < ·) →
        l.height < fuel →
        map.lower_bound_descent_rec fuel m l.top (some best) k =
          some (some (first_failing (fun x => decide (x < k)) l.elems best))) →
      (∀ (m : map K V) (par : ptr) (fuel : Nat) (best : Nat),
        Shaped m.mem par r → m._cmp_k = less → (ekeys r.elems).Pairwise (· < ·) →
        r.height < fuel →
        map.lower_bound_descent_rec fuel m r.top (some best) k =
          some (some (first_failing (fun x => decide (x < k)) r.elems best))) →
      ∀ (m : map K V) (par : ptr) (fuel : Nat) (best : Nat),
        Shaped m.mem par (.node a c (some x) l r) → m._cmp_k = less →
        (ekeys (tree.node a c (some x) l r).elems).Pairwise (· < ·) →
        (tree.node a c (some x) l r).height < fuel →
        map.lower_bound_descent_rec fuel m (tree.node a c (some x) l r).top (some best) k =
          some (some (first_failing (fun x => decide (x < k))
            (tree.node a c (some x) l r).elems best)) := by
    intro a c x l r ihl ihr m par fuel best hS hcmp hs hf
    obtain ⟨fuel, rfl⟩ : ∃ f, fuel = f + 1 := ⟨fuel - 1, by omega⟩
    simp only [tree.height] at hf
    obtain ⟨hc, hl, hr⟩ := hS
    have hsp := sorted_split (A := l.elems) (B := r.elems) hs
    have hs2 := hs
    simp only [tree.elems, ekeys_append, ekeys_cons_some, List.pairwise_append,
      List.pairwise_cons] at hs2
    by_cases hlt : x.1 < k
    · have e : map.lower_bound_descent_rec (fuel + 1) m (tree.node a c (some x) l r).top
          (some best) k = map.lower_bound_descent_rec fuel m r.top (some best) k := by
        simp [map.lower_bound_descent_rec, get_val_eq hc, hcmp, less, hlt, get_r_eq hc]
      rw [e, ihr m (some a) fuel best hr hcmp hs2.2.1.2 (by omega), tree.elems,
        first_failing_append]
      have h1 : first_failing (fun y => decide (y < k)) ((a, some x) :: r.elems) best =
          first_failing (fun y => decide (y < k)) r.elems best := by
        simp [first_failing, hlt]
      have hall : ∀ k2 ∈ ekeys l.elems, (fun y => decide (y < k)) k2 = true := by
        intro k2 hk2
        simpa using lt_trans (hsp.1 k2 hk2) hlt
      rw [h1, first_failing_all _ _ l.elems hall]
    · have e : map.lower_bound_descent_rec (fuel + 1) m (tree.node a c (some x) l r).top
          (some best) k = map.lower_bound_descent_rec fuel m l.top (some a) k := by
        simp [map.lower_bound_descent_rec, get_val_eq hc, hcmp, less, hlt, get_l_eq hc]
      rw [e, ihl m (some a) fuel a hl hcmp hs2.1 (by omega), tree.elems,
        first_failing_append]
      have h1 : first_failing (fun y => decide (y < k)) ((a, some x) :: r.elems) best = a := by
        simp [first_failing, hlt]
      rw [h1]
  induction hb with
  | nil =>
    intro m par fuel best _ _ _ hf
    obtain ⟨fuel, rfl⟩ : ∃ f, fuel = f + 1 := ⟨fuel - 1, by omega⟩
    simp [map.lower_bound_descent_rec, tree.elems, first_failing]
  | sentinel a =>
    intro m par fuel best hS _ _ hf
    obtain ⟨fuel, rfl⟩ : ∃ f, fuel = f + 1 := ⟨fuel - 1, by omega⟩
    simp [map.lower_bound_descent_rec, get_val_eq hS.1, tree.elems, first_failing]
  | red _ _ ihl ihr => exact step _ _ _ _ _ ihl ihr
  | black _ _ ihl ihr => exact step _ _ _ _ _ ihl ihr

/-- The descent of `upper_bound` on a sorted red-black subtree, with the comparator `less`:
the first node of the subtree whose key is greater than `k`, and the candidate if there is
none. -/
theorem upper_bound_descent_rec_spec (k : K) {t : tree K V} {c0 : color_type} {n0 : Nat}
    (hb : Bal t c0 n0) : ∀ (m : map K V) (par : ptr) (fuel : Nat) (best : Nat),
    Shaped m.mem par t → m._cmp_k = less → (ekeys t.elems).Pairwise (· < ·) →
    t.height < fuel →
    map.upper_bound_descent_rec fuel m t.top (some best) k =
      some (some (first_failing (fun x => !decide (k < x)) t.elems best)) := by
  have step : ∀ (a : Nat) (c : color_type) (x : K × V) (l r : tree K V),
      (∀ (m : map K V) (par : ptr) (fuel : Nat) (best : Nat),
        Shaped m.mem par l → m._cmp_k = less → (ekeys l.elems).Pairwise (· < ·) →
        l.height < fuel →
        map.upper_bound_descent_rec fuel m l.top (some best) k =
          some (some (first_failing (fun x => !decide (k < x)) l.elems best))) →
      (∀ (m : map K V) (par : ptr) (fuel : Nat) (best : Nat),
        Shaped m.mem par r → m._cmp_k = less → (ekeys r.elems).Pairwise (· < ·) →
        r.height < fuel →
        map.upper_bound_descent_rec fuel m r.top (some best) k =
          some (some (first_failing (fun x => !decide (k < x)) r.elems best))) →
      ∀ (m : map K V) (par : ptr) (fuel : Nat) (best : Nat),
        Shaped m.mem par (.node a c (some x) l r) → m._cmp_k = less →
        (ekeys (tree.node a c (some x) l r).elems).Pairwise (· < ·) →
        (tree.node a c (some x) l r).height < fuel →
        map.upper_bound_descent_rec fuel m (tree.node a c (some x) l r).top (some best) k =
          some (some (first_failing (fun x => !decide (k < x))
            (tree.node a c (some x) l r).elems best)) := by
    intro a c x l r ihl ihr m par fuel best hS hcmp hs hf
    obtain ⟨fuel, rfl⟩ : ∃ f, fuel = f + 1 := ⟨fuel - 1, by omega⟩
    simp only [tree.height] at hf
    obtain ⟨hc, hl, hr⟩ := hS
    have hsp := sorted_split (A := l.elems) (B := r.elems) hs
    have hs2 := hs
    simp only [tree.elems, ekeys_append, ekeys_cons_some, List.pairwise_append,
      List.pairwise_cons] at hs2
    by_cases hlt : k < x.1
    · have e : map.upper_bound_descent_rec (fuel + 1) m (tree.node a c (some x) l r).top
          (some best) k = map.upper_bound_descent_rec fuel m l.top (some a) k := by
        simp [map.upper_bound_descent_rec, get_val_eq hc, hcmp, less, hlt, get_l_eq hc]
      rw [e, ihl m (some a) fuel a hl hcmp hs2.1 (by omega), tree.elems,
        first_failing_append]
      have h1 : first_failing (fun y => !decide (k < y)) ((a, some x) :: r.elems) best = a := by
        simp [first_failing, hlt]
      rw [h1]
    · have e : map.upper_bound_descent_rec (fuel + 1) m (tree.node a c (some x) l r).top
          (some best) k = map.upper_bound_descent_rec fuel m r.top (some best) k := by
        simp [map.upper_bound_descent_rec, get_val_eq hc, hcmp, less, hlt, get_r_eq hc]
      rw [e, ihr m (some a) fuel best hr hcmp hs2.2.1.2 (by omega), tree.elems,
        first_failing_append]
      have h1 : first_failing (fun y => !decide (k < y)) ((a, some x) :: r.elems) best =
          first_failing (fun y => !decide (k < y)) r.elems best := by
        simp [first_failing, hlt]
      have hall : ∀ k2 ∈ ekeys l.elems, (fun y => !decide (k < y)) k2 = true := by
        intro k2 hk2
        have := lt_of_lt_of_le (hsp.1 k2 hk2) (not_lt.1 hlt)
        simpa using le_of_lt this
      rw [h1, first_failing_all _ _ l.elems hall]
  induction hb with
  | nil =>
    intro m par fuel best _ _ _ hf
    obtain ⟨fuel, rfl⟩ : ∃ f, fuel = f + 1 := ⟨fuel - 1, by omega⟩
    simp [map.upper_bound_descent_rec, tree.elems, first_failing]
  | sentinel a =>
    intro m par fuel best hS _ _ hf
    obtain ⟨fuel, rfl⟩ : ∃ f, fuel = f + 1 := ⟨fuel - 1, by omega⟩
    simp [map.upper_bound_descent_rec, get_val_eq hS.1, tree.elems, first_failing]
  | red _ _ ihl ihr => exact step _ _ _ _ _ ihl ihr
  | black _ _ ihl ihr => exact step _ _ _ _ _ ihl ihr

/-- The frame of the in-order sequence of a state: the low end node, the data nodes, the high
end node, which is `end()`. -/
theorem InvT.elems_frame {m : map K V} {T : tree K V} (hI : InvT m T) :
    ∃ lo hi mid, T.elems = (lo, none) :: (mid ++ [(hi, none)]) ∧ (∀ e ∈ mid, e.2 ≠ none) ∧
      m.end_ = some (some hi) := by
  obtain ⟨hi, init, e1, e2⟩ := end_spec hI
  obtain ⟨lo, hi2, mid, e3, hm⟩ := hI.framed
  have e4 : ((lo, none) :: mid) ++ [(hi2, none)] = init ++ [(hi, none)] := by
    rw [← e2, e3]; simp
  have e5 := (List.append_inj' e4 rfl).2
  simp only [List.cons.injEq, Prod.mk.injEq, and_true] at e5
  subst e5
  exact ⟨lo, hi2, mid, e3, hm, e1⟩

/-- The descent of `lower_bound` from the root. -/
theorem lower_bound_descent_spec {m : map K V} {T : tree K V} (hI : InvT m T) (k : K)
    {lo hi : Nat} {mid : List (Nat × Option (K × V))}
    (hT : T.elems = (lo, none) :: (mid ++ [(hi, none)])) (hend : m.end_ = some (some hi)) :
    m.lower_bound_descent k = some (some (first_failing (fun x => decide (x < k)) mid hi)) := by
  have hR := hI.1
  have hfuel : T.height < m.brk + 1 := by
    have := T.height_le
    have := hR.card_le
    omega
  have hff : first_failing (fun x => decide (x < k)) T.elems hi =
      first_failing (fun x => decide (x < k)) mid hi := by
    rw [hT]
    simp [first_failing, first_failing_append]
  rcases hI.2.2 with ⟨-, a, b, rfl⟩ | ⟨hG, -⟩
  · have hc := hR.shaped.1
    rw [← hff]
    simp [map.lower_bound_descent, hend, hR.root, skeleton, map.lower_bound_descent_rec,
      get_val_eq hc, tree.elems, first_failing]
  · obtain ⟨n, hb⟩ := hG.bal
    rw [← hff, map.lower_bound_descent, hend, hR.root]
    exact lower_bound_descent_rec_spec k hb m none (m.brk + 1) hi hR.shaped hI.2.1 hG.sorted hfuel

/-- The descent of `upper_bound` from the root. -/
theorem upper_bound_descent_spec {m : map K V} {T : tree K V} (hI : InvT m T) (k : K)
    {lo hi : Nat} {mid : List (Nat × Option (K × V))}
    (hT : T.elems = (lo, none) :: (mid ++ [(hi, none)])) (hend : m.end_ = some (some hi)) :
    m.upper_bound_descent k = some (some (first_failing (fun x => !decide (k < x)) mid hi)) := by
  have hR := hI.1
  have hfuel : T.height < m.brk + 1 := by
    have := T.height_le
    have := hR.card_le
    omega
  have hff : first_failing (fun x => !decide (k < x)) T.elems hi =
      first_failing (fun x => !decide (k < x)) mid hi := by
    rw [hT]
    simp [first_failing, first_failing_append]
  rcases hI.2.2 with ⟨-, a, b, rfl⟩ | ⟨hG, -⟩
  · have hc := hR.shaped.1
    rw [← hff]
    simp [map.upper_bound_descent, hend, hR.root, skeleton, map.upper_bound_descent_rec,
      get_val_eq hc, tree.elems, first_failing]
  · obtain ⟨n, hb⟩ := hG.bal
    rw [← hff, map.upper_bound_descent, hend, hR.root]
    exact upper_bound_descent_rec_spec k hb m none (m.brk + 1) hi hR.shaped hI.2.1 hG.sorted hfuel

/-- The facts about a position of the scan: the node is not `end()`, its value and its
successor. -/
theorem scan_position {m : map K V} {T : tree K V} (hR : Rep m T) {lo hi a : Nat}
    {v : Option (K × V)} {A B : List (Nat × Option (K × V))}
    (hT : T.elems = (lo, none) :: ((A ++ (a, v) :: B) ++ [(hi, none)])) :
    a ≠ hi ∧ get_val m (some a) = some v ∧
      ∃ nx, ((B ++ [(hi, none)]).map Prod.fst).head? = some nx ∧
        map.it_next m (some a) = some (some nx) := by
  have hnd := hR.nodup
  rw [tree.addrs, hT] at hnd
  refine ⟨?_, hR.get_val_mem (by rw [hT]; simp), ?_⟩
  · rintro rfl
    simp only [List.map_cons, List.map_append, List.map_nil, List.nodup_cons,
      List.nodup_append, List.mem_append, List.mem_cons] at hnd
    simp at hnd
  · cases B with
    | nil =>
      refine ⟨hi, rfl, ?_⟩
      have hx : T.addrs = (lo :: A.map Prod.fst) ++ a :: hi :: [] := by
        rw [tree.addrs, hT]; simp
      exact it_next_spec hR hx
    | cons e B =>
      refine ⟨e.1, rfl, ?_⟩
      have hx : T.addrs = (lo :: A.map Prod.fst) ++ a :: e.1 :: (B.map Prod.fst ++ [hi]) := by
        rw [tree.addrs, hT]; simp
      exact it_next_spec hR hx

/-- The loop of `lower_bound`, started at a position of the in-order sequence, stops at the
first node from there on whose key is not less than `k`. -/
theorem lower_bound_loop_spec {m : map K V} {T : tree K V} (hI : InvT m T) (k : K)
    {lo hi : Nat} {mid : List (Nat × Option (K × V))}
    (hT : T.elems = (lo, none) :: (mid ++ [(hi, none)])) (hmid : ∀ e ∈ mid, e.2 ≠ none)
    (hend : m.end_ = some (some hi)) :
    ∀ (B A : List (Nat × Option (K × V))) (cur fuel : Nat), mid = A ++ B →
    ((B ++ [(hi, none)]).map Prod.fst).head? = some cur → B.length < fuel →
    map.lower_bound_loop fuel m (some cur) k =
      some (some (first_failing (fun x => decide (x < k)) B hi)) := by
  intro B
  induction B with
  | nil =>
    intro A cur fuel _ hcur hf
    obtain ⟨fuel, rfl⟩ : ∃ f, fuel = f + 1 := ⟨fuel - 1, by omega⟩
    simp only [List.nil_append, List.map_cons, List.map_nil, List.head?_cons,
      Option.some.injEq] at hcur
    subst hcur
    simp [map.lower_bound_loop, hend, first_failing]
  | cons e B ih =>
    intro A cur fuel hA hcur hf
    obtain ⟨fuel, rfl⟩ : ∃ f, fuel = f + 1 := ⟨fuel - 1, by omega⟩
    obtain ⟨a, v⟩ := e
    simp only [List.cons_append, List.map_cons, List.head?_cons, Option.some.injEq] at hcur
    subst hcur
    cases v with
    | none => exact absurd rfl (hmid (a, none) (by rw [hA]; simp))
    | some kv =>
      rw [hA] at hT
      obtain ⟨hne, hval, nx, hnx, hnext⟩ := scan_position hI.1 hT
      by_cases hlt : kv.1 < k
      · have h2 := ih (A ++ [(a, some kv)]) nx fuel (by rw [hA]; simp) hnx
          (by simp only [List.length_cons] at hf; omega)
        simp [map.lower_bound_loop, hend, hne, hval, hI.2.1, less, hlt, hnext, h2,
          first_failing]
      · simp [map.lower_bound_loop, hend, hne, hval, hI.2.1, less, hlt, first_failing]

/-- The loop of `upper_bound`, started at a position of the in-order sequence, stops at the
first node from there on whose key is greater than `k`. -/
theorem upper_bound_loop_spec {m : map K V} {T : tree K V} (hI : InvT m T) (k : K)
    {lo hi : Nat} {mid : List (Nat × Option (K × V))}
    (hT : T.elems = (lo, none) :: (mid ++ [(hi, none)])) (hmid : ∀ e ∈ mid, e.2 ≠ none)
    (hend : m.end_ = some (some hi)) :
    ∀ (B A : List (Nat × Option (K × V))) (cur fuel : Nat), mid = A ++ B →
    ((B ++ [(hi, none)]).map Prod.fst).head? = some cur → B.length < fuel →
    map.upper_bound_loop fuel m (some cur) k =
      some (some (first_failing (fun x => !decide (k < x)) B hi)) := by
  intro B
  induction B with
  | nil =>
    intro A cur fuel _ hcur hf
    obtain ⟨fuel, rfl⟩ : ∃ f, fuel = f + 1 := ⟨fuel - 1, by omega⟩
    simp only [List.nil_append, List.map_cons, List.map_nil, List.head?_cons,
      Option.some.injEq] at hcur
    subst hcur
    simp [map.upper_bound_loop, hend, first_failing]
  | cons e B ih =>
    intro A cur fuel hA hcur hf
    obtain ⟨fuel, rfl⟩ : ∃ f, fuel = f + 1 := ⟨fuel - 1, by omega⟩
    obtain ⟨a, v⟩ := e
    simp only [List.cons_append, List.map_cons, List.head?_cons, Option.some.injEq] at hcur
    subst hcur
    cases v with
    | none => exact absurd rfl (hmid (a, none) (by rw [hA]; simp))
    | some kv =>
      rw [hA] at hT
      obtain ⟨hne, hval, nx, hnx, hnext⟩ := scan_position hI.1 hT
      by_cases hlt : k < kv.1
      · simp [map.upper_bound_loop, hend, hne, hval, hI.2.1, less, hlt, first_failing]
      · have h2 := ih (A ++ [(a, some kv)]) nx fuel (by rw [hA]; simp) hnx
          (by simp only [List.length_cons] at hf; omega)
        simp [map.upper_bound_loop, hend, hne, hval, hI.2.1, less, hlt, hnext, h2,
          first_failing]

/-- What `begin()` is in the frame of the in-order sequence: the first node after the low end
node. -/
theorem begin_frame {m : map K V} {T : tree K V} (hI : InvT m T)
    {lo hi : Nat} {mid : List (Nat × Option (K × V))}
    (hT : T.elems = (lo, none) :: (mid ++ [(hi, none)])) (hend : m.end_ = some (some hi)) :
    ∃ b, m.begin = some (some b) ∧ ((mid ++ [(hi, none)]).map Prod.fst).head? = some b ∧
      mid.length = m._sz := by
  have hlen : mid.length = m._sz := by
    rw [hI.size_eq, tree.data, hT]
    have hm : ∀ e ∈ mid, e.2 ≠ none := by
      obtain ⟨lo2, hi2, mid2, e3, hm⟩ := hI.framed
      rw [hT] at e3
      simp only [List.cons.injEq, Prod.mk.injEq, and_true] at e3
      have e5 := (List.append_inj' e3.2 rfl).1
      rw [e5]; exact hm
    simp only [List.filterMap_cons, List.filterMap_append, List.filterMap_nil, List.append_nil]
    clear hT
    induction mid with
    | nil => rfl
    | cons e mid ih =>
      obtain ⟨a, v⟩ := e
      cases v with
      | none => exact absurd rfl (hm (a, none) (List.mem_cons_self _ _))
      | some kv =>
        simp [List.filterMap_cons, ih (fun e he => hm e (List.mem_cons_of_mem _ he))]
  by_cases hsz : m._sz = 0
  · have : mid = [] := List.eq_nil_of_length_eq_zero (hlen.trans hsz)
    subst this
    exact ⟨hi, by rw [begin_empty hsz, hend], rfl, hlen⟩
  · obtain ⟨lo2, b, xb, rest, e3, e4⟩ := begin_spec hI hsz
    rw [hT] at e4
    simp only [List.cons.injEq, Prod.mk.injEq, and_true] at e4
    refine ⟨b, e3, ?_, hlen⟩
    rw [e4.2]; rfl

/-- Member `lower_bound` returns the first node of the in-order sequence whose key is not
less than `k`, or `end()`. -/
theorem lower_bound_eq {m : map K V} {T : tree K V} (hI : InvT m T) (k : K)
    {lo hi : Nat} {mid : List (Nat × Option (K × V))}
    (hT : T.elems = (lo, none) :: (mid ++ [(hi, none)])) (hmid : ∀ e ∈ mid, e.2 ≠ none)
    (hend : m.end_ = some (some hi)) :
    m.lower_bound k = some (some (first_failing (fun x => decide (x < k)) mid hi)) := by
  obtain ⟨b, hb, hhead, hlen⟩ := begin_frame hI hT hend
  have := lower_bound_loop_spec hI k hT hmid hend mid [] b (m._sz + 1) rfl hhead (by omega)
  simp [map.lower_bound, hb, this]

/-- Member `upper_bound` returns the first node of the in-order sequence whose key is greater
than `k`, or `end()`. -/
theorem upper_bound_eq {m : map K V} {T : tree K V} (hI : InvT m T) (k : K)
    {lo hi : Nat} {mid : List (Nat × Option (K × V))}
    (hT : T.elems = (lo, none) :: (mid ++ [(hi, none)])) (hmid : ∀ e ∈ mid, e.2 ≠ none)
    (hend : m.end_ = some (some hi)) :
    m.upper_bound k = some (some (first_failing (fun x => !decide (k < x)) mid hi)) := by
  obtain ⟨b, hb, hhead, hlen⟩ := begin_frame hI hT hend
  have := upper_bound_loop_spec hI k hT hmid hend mid [] b (m._sz + 1) rfl hhead (by omega)
  simp [map.upper_bound, hb, this]

end order

end ft

namespace ft
open color_type
variable {K V : Type}

/-! ### The result of a scan, in terms of what a client of the map observes -/

theorem filterMap_snd_data : ∀ (es : List (Nat × Option (K × V))), (∀ e ∈ es, e.2 ≠ none) →
    (es.filterMap Prod.snd).length = es.length ∧
    (es.filter (fun e => e.2.isSome)) = es := by
  intro es
  induction es with
  | nil => intro _; exact ⟨rfl, rfl⟩
  | cons e es ih =>
    intro h
    obtain ⟨a, v⟩ := e
    cases v with
    | none => exact absurd rfl (h (a, none) (List.mem_cons_self _ _))
    | some kv =>
      obtain ⟨h1, h2⟩ := ih (fun e he => h e (List.mem_cons_of_mem _ he))
      exact ⟨by simp [List.filterMap_cons, h1], by simp [List.filter_cons, h2]⟩

section order
variable [LinearOrder K]

/-- The data nodes, pairs and keys of a state, in the frame of the in-order sequence. -/
theorem data_frame {m : map K V} {T : tree K V} (hI : InvT m T)
    {lo hi : Nat} {mid : List (Nat × Option (K × V))}
    (hT : T.elems = (lo, none) :: (mid ++ [(hi, none)])) (hmid : ∀ e ∈ mid, e.2 ≠ none) :
    m.data_nodes = mid.map Prod.fst ∧ m.to_list = mid.filterMap Prod.snd ∧
      m.keys = ekeys mid ∧ (ekeys mid).Pairwise (· < ·) ∧ mid.length = m._sz := by
  have hR := hI.1
  have hk : ekeys T.elems = ekeys mid := by rw [hT]; simp
  refine ⟨?_, ?_, ?_, ?_, ?_⟩
  · rw [hR.data_nodes_eq, hT]
    simp [List.filter_cons, List.filter_append, (filterMap_snd_data mid hmid).2]
  · rw [hR.to_list_eq, tree.data, hT]
    simp [List.filterMap_cons, List.filterMap_append]
  · rw [hR.keys_eq, hk]
  · rw [← hk]; exact hI.sorted
  · rw [hI.size_eq, tree.data, hT]
    simp [List.filterMap_cons, List.filterMap_append, (filterMap_snd_data mid hmid).1]

/-- The result of a scan with a test that, once it fails at a key, fails at the greater
keys: the node at the position that separates the pairs that pass the test from those that
fail it. -/
theorem scan_frame {m : map K V} {T : tree K V} (hI : InvT m T) (p : K → Bool)
    (hmono : ∀ a b, a < b → p a = false → p b = false)
    {lo hi : Nat} {mid : List (Nat × Option (K × V))}
    (hT : T.elems = (lo, none) :: (mid ++ [(hi, none)])) (hmid : ∀ e ∈ mid, e.2 ≠ none) :
    ∃ pre post, m.data_nodes ++ [hi] = pre ++ first_failing p mid hi :: post ∧
      (∀ a ∈ pre, ∃ kv, m.payload a = some kv ∧ p kv.1 = true) ∧
      (∀ kv, m.payload (first_failing p mid hi) = some kv → p kv.1 = false) ∧
      (first_failing p mid hi = hi ↔ ∀ k2 ∈ m.keys, p k2 = true) ∧
      ∃ xs ys, m.to_list = xs ++ ys ∧ xs.length = pre.length ∧ (∀ x ∈ xs, p x.1 = true) ∧
        (∀ y ∈ ys, p y.1 = false) ∧ m.payload (first_failing p mid hi) = ys.head? := by
  have hR := hI.1
  obtain ⟨hd, hl, hk, hs, -⟩ := data_frame hI hT hmid
  have hphi : m.payload hi = none := hR.payload_eq (by rw [hT]; simp)
  obtain ⟨A, B, hAB, hA, hB⟩ := first_failing_split p hi mid hmid
  have hAd : ∀ e ∈ A, e.2 ≠ none := fun e he => hmid e (by rw [hAB]; simp [he])
  have hpre : ∀ a ∈ A.map Prod.fst, ∃ kv, m.payload a = some kv ∧ p kv.1 = true := by
    intro a ha
    obtain ⟨⟨a2, v⟩, he, rfl⟩ := List.mem_map.1 ha
    obtain ⟨kv, hkv, hp⟩ := hA _ he
    simp only at hkv
    subst hkv
    exact ⟨kv, hR.payload_eq (by rw [hT, hAB]; simp [he]), hp⟩
  have hxs : ∀ x ∈ A.filterMap Prod.snd, p x.1 = true := by
    intro x hx
    obtain ⟨⟨a2, v⟩, he, hv⟩ := List.mem_filterMap.1 hx
    obtain ⟨kv, hkv, hp⟩ := hA _ he
    simp only at hv hkv
    rw [hkv] at hv
    cases hv
    exact hp
  rcases hB with ⟨rfl, hr⟩ | ⟨a, kv, rest, rfl, hp, hr⟩
  · rw [hr]
    simp only [List.append_nil] at hAB
    subst hAB
    refine ⟨mid.map Prod.fst, [], by rw [hd], hpre, ?_, ?_, ?_⟩
    · intro kv h; rw [hphi] at h; cases h
    · refine ⟨fun _ => ?_, fun _ => rfl⟩
      intro k2 hk2
      rw [map.keys, hl] at hk2
      obtain ⟨x, hx, rfl⟩ := List.mem_map.1 hk2
      exact hxs x hx
    · refine ⟨mid.filterMap Prod.snd, [], by rw [hl]; simp, ?_, hxs, by simp, ?_⟩
      · rw [(filterMap_snd_data mid hmid).1, List.length_map]
      · rw [hphi]; rfl
  · rw [hr]
    have hpa : m.payload a = some kv := hR.payload_eq (by rw [hT, hAB]; simp)
    have hne : a ≠ hi := by
      rintro rfl
      rw [hphi] at hpa; cases hpa
    have hsp : KeysGt rest kv.1 := by
      rw [hAB] at hs
      exact (sorted_split hs).2
    refine ⟨A.map Prod.fst, rest.map Prod.fst ++ [hi], by rw [hd, hAB]; simp, hpre, ?_, ?_, ?_⟩
    · intro kv2 h
      rw [hpa] at h; cases h
      exact hp
    · refine ⟨fun h => absurd h hne, fun h => ?_⟩
      have := h kv.1 (by rw [hk, hAB]; simp)
      rw [hp] at this; cases this
    · refine ⟨A.filterMap Prod.snd, kv :: rest.filterMap Prod.snd, ?_, ?_, hxs, ?_, ?_⟩
      · rw [hl, hAB]; simp [List.filterMap_append, List.filterMap_cons]
      · rw [(filterMap_snd_data A hAd).1, List.length_map]
      · intro y hy
        rcases List.mem_cons.1 hy with rfl | hy
        · exact hp
        · apply hmono kv.1 y.1 _ hp
          apply hsp
          rw [ekeys_eq_map]
          exact List.mem_map_of_mem _ hy
      · rw [hpa]; rfl

/-! ### Half-open ranges -/

/-- The loop over a half-open range of iterators visits the data nodes from the first
iterator up to the last one, in in-order. -/
theorem range_loop_spec [DecidableEq K] {m : map K V} {T : tree K V} (hR : Rep m T)
    {lo : Nat} {N : List (Nat × Option (K × V))} (hT : T.elems = (lo, none) :: N) :
    ∀ (S A C : List (Nat × Option (K × V))) (cur last fuel : Nat), N = A ++ S ++ C →
    (∀ e ∈ S, e.2 ≠ none) →
    ((S ++ C).map Prod.fst).head? = some cur → (C.map Prod.fst).head? = some last →
    S.length < fuel →
    map.range_loop fuel m (some cur) (some last) = some (S.filterMap Prod.snd) := by
  intro S
  induction S with
  | nil =>
    intro A C cur last fuel _ _ hcur hlast hf
    obtain ⟨fuel, rfl⟩ : ∃ f, fuel = f + 1 := ⟨fuel - 1, by omega⟩
    simp only [List.nil_append] at hcur
    rw [hcur] at hlast
    cases hlast
    simp [map.range_loop]
  | cons e S ih =>
    intro A C cur last fuel hN hS hcur hlast hf
    obtain ⟨fuel, rfl⟩ : ∃ f, fuel = f + 1 := ⟨fuel - 1, by omega⟩
    obtain ⟨a, v⟩ := e
    simp only [List.cons_append, List.map_cons, List.head?_cons, Option.some.injEq] at hcur
    subst hcur
    cases v with
    | none => exact absurd rfl (hS (a, none) (List.mem_cons_self _ _))
    | some kv =>
      obtain ⟨nx, hnx⟩ : ∃ nx, ((S ++ C).map Prod.fst).head? = some nx := by
        cases S with
        | nil => exact ⟨last, by simpa using hlast⟩
        | cons e2 S2 => exact ⟨e2.1, rfl⟩
      obtain ⟨rest, hrest⟩ : ∃ rest, (S ++ C).map Prod.fst = nx :: rest := by
        cases hsc : (S ++ C).map Prod.fst with
        | nil => rw [hsc] at hnx; cases hnx
        | cons x rest =>
          rw [hsc] at hnx
          simp only [List.head?_cons, Option.some.injEq] at hnx
          exact ⟨rest, by rw [hnx]⟩
      have hx : T.addrs = (lo :: A.map Prod.fst) ++ a :: nx :: rest := by
        rw [tree.addrs, hT, hN]
        simp only [List.map_cons, List.map_append, List.cons_append, List.append_assoc,
          List.cons.injEq, true_and, List.append_cancel_left_eq]
        simpa using hrest
      have hnext := it_next_spec hR hx
      have hval : get_val m (some a) = some (some kv) :=
        hR.get_val_mem (by rw [hT, hN]; simp)
      have hne : a ≠ last := by
        have hnd := hR.nodup
        rw [hx] at hnd
        obtain ⟨c, C2, rfl⟩ : ∃ c C2, C = c :: C2 := by
          cases C with
          | nil => simp at hlast
          | cons c C2 => exact ⟨c, C2, rfl⟩
        simp only [List.map_cons, List.head?_cons, Option.some.injEq] at hlast
        have hmem : last ∈ nx :: rest := by
          rw [← hrest, ← hlast]; simp
        rintro rfl
        have h2 := (List.nodup_append.1 hnd).2.1
        exact (List.nodup_cons.1 h2).1 hmem
      have h2 := ih (A ++ [(a, some kv)]) C nx last fuel (by rw [hN]; simp)
        (fun e he => hS e (List.mem_cons_of_mem _ he)) hnx hlast
        (by simp only [List.length_cons] at hf; omega)
      simp [map.range_loop, hne, hval, hnext, h2, List.filterMap_cons]

theorem filter_key_split [DecidableEq K] {A B : List (K × V)} {x : K × V}
    (hA : ∀ y ∈ A, y.1 < x.1) (hB : ∀ y ∈ B, x.1 < y.1) :
    (A ++ x :: B).filter (fun y => decide (y.1 = x.1)) = [x] := by
  rw [List.filter_append, List.filter_cons, List.filter_eq_nil_iff.2,
    List.filter_eq_nil_iff.2]
  · simp
  · intro y hy
    simpa using ne_of_gt (hB y hy)
  · intro y hy
    simpa using ne_of_lt (hA y hy)

/-- The range that `lower_bound` and `upper_bound` of a key delimit: the node of the key and
its successor if the key is present, twice the same node if not. -/
theorem bounds_frame {m : map K V} {T : tree K V} (hI : InvT m T) (k : K)
    {lo hi : Nat} {mid : List (Nat × Option (K × V))}
    (hT : T.elems = (lo, none) :: (mid ++ [(hi, none)])) (hmid : ∀ e ∈ mid, e.2 ≠ none) :
    m.range (some (first_failing (fun x => decide (x < k)) mid hi))
        (some (first_failing (fun x => !decide (k < x)) mid hi)) =
      some (m.to_list.filter (fun x => decide (x.1 = k))) ∧
    (k ∈ m.keys → ∃ v, m.payload (first_failing (fun x => decide (x < k)) mid hi) = some (k, v) ∧
      m.to_list.filter (fun x => decide (x.1 = k)) = [(k, v)] ∧
      map.it_next m (some (first_failing (fun x => decide (x < k)) mid hi)) =
        some (some (first_failing (fun x => !decide (k < x)) mid hi))) ∧
    (k ∉ m.keys → first_failing (fun x => decide (x < k)) mid hi =
        first_failing (fun x => !decide (k < x)) mid hi ∧
      m.to_list.filter (fun x => decide (x.1 = k)) = []) := by
  have hR := hI.1
  obtain ⟨hd, hl, hk, hs, hlen⟩ := data_frame hI hT hmid
  by_cases hmem : k ∈ m.keys
  · have hmem2 := hmem
    rw [hk, mem_ekeys] at hmem2
    obtain ⟨a, v, hav⟩ := hmem2
    obtain ⟨A, B, hAB⟩ := List.append_of_mem hav
    have hs2 := hs
    rw [hAB] at hs2
    obtain ⟨hlt, hgt⟩ := sorted_split hs2
    simp only at hlt hgt
    have e1 : first_failing (fun x => decide (x < k)) mid hi = a := by
      rw [hAB, first_failing_append]
      have : first_failing (fun x => decide (x < k)) ((a, some (k, v)) :: B) hi = a := by
        simp [first_failing]
      rw [this, first_failing_all]
      intro k2 hk2
      simpa using hlt k2 hk2
    have hT2 : T.elems = (lo, none) :: ((A ++ (a, some (k, v)) :: B) ++ [(hi, none)]) := by
      rw [hT, hAB]
    obtain ⟨-, -, nx, hnx, hnext⟩ := scan_position hR hT2
    have e2 : first_failing (fun x => !decide (k < x)) mid hi = nx := by
      rw [hAB, first_failing_append]
      have h3 : first_failing (fun x => !decide (k < x)) ((a, some (k, v)) :: B) hi =
          first_failing (fun x => !decide (k < x)) B hi := by
        simp [first_failing]
      have h4 : first_failing (fun x => !decide (k < x)) B hi = nx := by
        cases B with
        | nil => simpa [first_failing] using hnx
        | cons e B2 =>
          obtain ⟨b, w⟩ := e
          cases w with
          | none => exact absurd rfl (hmid (b, none) (by rw [hAB]; simp))
          | some kv =>
            have : k < kv.1 := hgt kv.1 (by simp)
            simp only [List.cons_append, List.map_cons, List.head?_cons,
              Option.some.injEq] at hnx
            simp [first_failing, this, hnx]
      rw [h3, h4, first_failing_all]
      intro k2 hk2
      simpa using le_of_lt (hlt k2 hk2)
    have hfil : m.to_list.filter (fun x => decide (x.1 = k)) = [(k, v)] := by
      rw [hl, hAB]
      simp only [List.filterMap_append, List.filterMap_cons]
      apply filter_key_split (x := (k, v))
      · intro y hy
        exact hlt y.1 (by rw [ekeys_eq_map]; exact List.mem_map_of_mem _ hy)
      · intro y hy
        exact hgt y.1 (by rw [ekeys_eq_map]; exact List.mem_map_of_mem _ hy)
    have hsz : 1 ≤ m._sz := by
      rw [← hlen, hAB]; simp; omega
    refine ⟨?_, fun _ => ⟨v, ?_, hfil, ?_⟩, fun h => absurd hmem h⟩
    · rw [e1, e2, hfil, map.range]
      have hc : ∃ c C2, B ++ [(hi, (none : Option (K × V)))] = c :: C2 := by
        cases B with
        | nil => exact ⟨_, _, rfl⟩
        | cons c C2 => exact ⟨_, _, rfl⟩
      have := range_loop_spec hR hT [(a, some (k, v))] A (B ++ [(hi, none)]) a nx (m._sz + 1)
        (by rw [hAB]; simp) (by simp) (by simp) (by simpa using hnx) (by simp; omega)
      simpa using this
    · rw [e1]; exact hR.payload_eq (by rw [hT, hAB]; simp)
    · rw [e1, e2]; exact hnext
  · have hno : ∀ k2 ∈ ekeys mid, (fun x => decide (x < k)) k2 = (fun x => !decide (k < x)) k2 := by
      intro k2 hk2
      have hne : k2 ≠ k := by
        rintro rfl
        exact hmem (by rw [hk]; exact hk2)
      rcases lt_or_gt_of_ne hne with h1 | h1
      · simp [h1, not_lt_of_gt h1]
      · simp [h1, not_lt_of_gt h1]
    have e1 := first_failing_congr hi mid hno
    have hfil : m.to_list.filter (fun x => decide (x.1 = k)) = [] := by
      rw [List.filter_eq_nil_iff]
      intro y hy
      have : y.1 ∈ m.keys := List.mem_map_of_mem _ hy
      simp only [decide_eq_true_eq]
      rintro rfl
      exact hmem this
    refine ⟨?_, fun h => absurd h hmem, fun _ => ⟨e1, hfil⟩⟩
    rw [← e1, hfil]
    simp [map.range, map.range_loop]

/-- The second sample state is reachable. -/
theorem reachable_sample7b : Reachable sample7b :=
  reachable_build [(1, 10), (3, 30), (4, 40), (5, 50), (7, 70), (8, 80), (9, 90)] (by rfl)

end order

end ft

namespace ft
open color_type
variable {K V : Type}

/-! ### Reverse iterators -/

/-- A position in a sequence of data nodes, found from a position in the sequence of their
pairs. -/
theorem data_split : ∀ (xs : List (K × V)) (es : List (Nat × Option (K × V))) (x : K × V)
    (ys : List (K × V)), (∀ e ∈ es, e.2 ≠ none) → es.filterMap Prod.snd = xs ++ x :: ys →
    ∃ A a S, es = A ++ (a, some x) :: S ∧ A.filterMap Prod.snd = xs ∧
      S.filterMap Prod.snd = ys ∧ S.length = ys.length := by
  intro xs
  induction xs with
  | nil =>
    intro es x ys hd h
    cases es with
    | nil => simp at h
    | cons e es =>
      obtain ⟨a, v⟩ := e
      cases v with
      | none => exact absurd rfl (hd (a, none) (List.mem_cons_self _ _))
      | some kv =>
        simp only [List.filterMap_cons, List.nil_append, List.cons.injEq] at h
        obtain ⟨rfl, h2⟩ := h
        refine ⟨[], a, es, rfl, rfl, h2, ?_⟩
        rw [← h2, (filterMap_snd_data es (fun e he => hd e (List.mem_cons_of_mem _ he))).1]
  | cons x0 xs ih =>
    intro es x ys hd h
    cases es with
    | nil => simp at h
    | cons e es =>
      obtain ⟨a, v⟩ := e
      cases v with
      | none => exact absurd rfl (hd (a, none) (List.mem_cons_self _ _))
      | some kv =>
        simp only [List.filterMap_cons, List.cons_append, List.cons.injEq] at h
        obtain ⟨rfl, h2⟩ := h
        obtain ⟨A, a2, S, e1, e2, e3, e4⟩ :=
          ih es x ys (fun e he => hd e (List.mem_cons_of_mem _ he)) h2
        exact ⟨(a, some kv) :: A, a2, S, by rw [e1]; rfl, by simp [List.filterMap_cons, e2],
          e3, e4⟩

section order
variable [DecidableEq K]

/-- One step of a reverse iterator whose base is the successor of the data node `a`: it
references the pair of `a`, and its increment has the base `a`. -/
theorem rev_step {m : map K V} {T : tree K V} (hR : Rep m T) {lo a cur : Nat} {kv : K × V}
    {A C : List (Nat × Option (K × V))} {N : List (Nat × Option (K × V))}
    (hT : T.elems = (lo, none) :: N) (hN : N = A ++ (a, some kv) :: C)
    (hcur : (C.map Prod.fst).head? = some cur) :
    map.it_prev m (some cur) = some (some a) ∧
      map.rev_deref m { _base := some cur } = some kv ∧
      map.rev_inc m { _base := some cur } = some { _base := some a } ∧
      cur ∉ (A ++ [(a, some kv)]).map Prod.fst := by
  obtain ⟨c, C2, rfl⟩ : ∃ c C2, C = c :: C2 := by
    cases C with
    | nil => simp at hcur
    | cons c C2 => exact ⟨c, C2, rfl⟩
  simp only [List.map_cons, List.head?_cons, Option.some.injEq] at hcur
  have hx : T.addrs = (lo :: A.map Prod.fst) ++ a :: cur :: C2.map Prod.fst := by
    rw [tree.addrs, hT, hN, ← hcur]; simp
  have hprev := it_prev_spec hR hx
  have hval : get_val m (some a) = some (some kv) :=
    hR.get_val_mem (by rw [hT, hN]; simp)
  refine ⟨hprev, by simp [map.rev_deref, hprev, hval], by simp [map.rev_inc, hprev], ?_⟩
  have hnd := hR.nodup
  rw [hx] at hnd
  have h2 : ((lo :: A.map Prod.fst) ++ [a] ++ cur :: C2.map Prod.fst).Nodup := by
    simpa using hnd
  have h3 := (List.nodup_append.1 h2).2.2
  intro hmem
  refine h3 (a := cur) ?_ (List.mem_cons_self _ _)
  simp only [List.map_append, List.map_cons, List.map_nil, List.mem_append, List.mem_map,
    List.mem_singleton] at hmem
  simp only [List.cons_append, List.mem_cons, List.mem_append, List.mem_map, List.mem_singleton,
    List.mem_nil_iff, or_false]
  rcases hmem with h | h
  · exact Or.inr (Or.inl h)
  · exact Or.inr (Or.inr h)

/-- The loop over a range of reverse iterators visits the data nodes between the two base
iterators, from the last one to the first one. -/
theorem rev_loop_spec {m : map K V} {T : tree K V} (hR : Rep m T)
    {lo : Nat} {N : List (Nat × Option (K × V))} (hT : T.elems = (lo, none) :: N) :
    ∀ (S A C : List (Nat × Option (K × V))) (cur last fuel : Nat), N = A ++ S ++ C →
    (∀ e ∈ S, e.2 ≠ none) →
    (C.map Prod.fst).head? = some cur → ((S ++ C).map Prod.fst).head? = some last →
    S.length < fuel →
    map.rev_loop fuel m { _base := some cur } { _base := some last } =
      some (S.filterMap Prod.snd).reverse := by
  intro S
  induction S using List.reverseRecOn with
  | nil =>
    intro A C cur last fuel _ _ hcur hlast hf
    obtain ⟨fuel, rfl⟩ : ∃ f, fuel = f + 1 := ⟨fuel - 1, by omega⟩
    simp only [List.nil_append] at hlast
    rw [hcur] at hlast
    cases hlast
    simp [map.rev_loop]
  | append_singleton S e ih =>
    intro A C cur last fuel hN hS hcur hlast hf
    obtain ⟨fuel, rfl⟩ : ∃ f, fuel = f + 1 := ⟨fuel - 1, by omega⟩
    obtain ⟨a, v⟩ := e
    cases v with
    | none => exact absurd rfl (hS (a, none) (by simp))
    | some kv =>
      have hN2 : N = (A ++ S) ++ (a, some kv) :: C := by rw [hN]; simp
      obtain ⟨hprev, hderef, hinc, hnot⟩ := rev_step hR hT hN2 hcur
      have hml : last ∈ (S ++ [(a, some kv)]).map Prod.fst := by
        cases S with
        | nil => simpa using hlast.symm
        | cons s S2 =>
          simp only [List.cons_append, List.map_cons, List.head?_cons,
            Option.some.injEq] at hlast
          rw [← hlast]; simp
      have hne : cur ≠ last := by
        intro hcl
        rw [hcl] at hnot
        apply hnot
        simp only [List.map_append, List.mem_append] at hml ⊢
        rcases hml with h2 | h2
        · exact Or.inl (Or.inr h2)
        · exact Or.inr h2
      have hlast2 : ((S ++ (a, some kv) :: C).map Prod.fst).head? = some last := by
        simpa using hlast
      have h2 := ih A ((a, some kv) :: C) a last fuel (by rw [hN]; simp)
        (fun e he => hS e (by simp [he])) rfl hlast2
        (by simp only [List.length_append, List.length_singleton] at hf; omega)
      simp [map.rev_loop, hne, hderef, hinc, h2, List.filterMap_append]

/-- The reverse iterator after as many increments as there are data nodes between the two
base iterators. -/
theorem rev_advance_spec {m : map K V} {T : tree K V} (hR : Rep m T)
    {lo : Nat} {N : List (Nat × Option (K × V))} (hT : T.elems = (lo, none) :: N) :
    ∀ (S A C : List (Nat × Option (K × V))) (cur last : Nat), N = A ++ S ++ C →
    (∀ e ∈ S, e.2 ≠ none) →
    (C.map Prod.fst).head? = some cur → ((S ++ C).map Prod.fst).head? = some last →
    map.rev_advance m S.length { _base := some cur } = some { _base := some last } := by
  intro S
  induction S using List.reverseRecOn with
  | nil =>
    intro A C cur last _ _ hcur hlast
    simp only [List.nil_append] at hlast
    rw [hcur] at hlast
    cases hlast
    rfl
  | append_singleton S e ih =>
    intro A C cur last hN hS hcur hlast
    obtain ⟨a, v⟩ := e
    cases v with
    | none => exact absurd rfl (hS (a, none) (by simp))
    | some kv =>
      have hN2 : N = (A ++ S) ++ (a, some kv) :: C := by rw [hN]; simp
      obtain ⟨hprev, hderef, hinc, hnot⟩ := rev_step hR hT hN2 hcur
      have hlast2 : ((S ++ (a, some kv) :: C).map Prod.fst).head? = some last := by
        simpa using hlast
      have h2 := ih A ((a, some kv) :: C) a last (by rw [hN]; simp)
        (fun e he => hS e (by simp [he])) rfl hlast2
      simp [map.rev_advance, hinc, h2]

end order

section linorder
variable [LinearOrder K]

/-- The traversal from `rbegin()` to `rend()`. -/
theorem rev_frame {m : map K V} {T : tree K V} (hI : InvT m T)
    {lo hi : Nat} {mid : List (Nat × Option (K × V))}
    (hT : T.elems = (lo, none) :: (mid ++ [(hi, none)])) (hmid : ∀ e ∈ mid, e.2 ≠ none)
    (hend : m.end_ = some (some hi)) :
    ∃ b, m.begin = some (some b) ∧ m.rbegin = some { _base := some hi } ∧
      m.rend = some { _base := some b } ∧
      m.rev_list = some m.to_list.reverse ∧
      map.rev_advance m m.size { _base := some hi } = some { _base := some b } ∧
      (∀ xs x ys, m.to_list = xs ++ x :: ys →
        ∃ r p, map.rev_advance m ys.length { _base := some hi } = some r ∧
          r._base ≠ some b ∧ map.it_prev m r._base = some (some p) ∧
          m.payload p = some x ∧ map.rev_deref m r = some x) := by
  have hR := hI.1
  obtain ⟨hd, hl, hk, hs, hlen⟩ := data_frame hI hT hmid
  obtain ⟨b, hb, hhead, -⟩ := begin_frame hI hT hend
  have hrb : m.rbegin = some { _base := some hi } := by simp [map.rbegin, hend]
  have hre : m.rend = some { _base := some b } := by simp [map.rend, hb]
  refine ⟨b, hb, hrb, hre, ?_, ?_, ?_⟩
  · have := rev_loop_spec hR hT mid [] [(hi, none)] hi b (m._sz + 1) (by simp) hmid rfl hhead
      (by omega)
    simp [map.rev_list, hrb, hre, this, hl]
  · have := rev_advance_spec hR hT mid [] [(hi, none)] hi b (by simp) hmid rfl hhead
    rw [map.size, ← hlen]
    exact this
  · intro xs x ys hxy
    rw [hl] at hxy
    obtain ⟨A, a, S, e1, e2, e3, e4⟩ := data_split xs mid x ys hmid hxy
    have hSd : ∀ e ∈ S, e.2 ≠ none := fun e he => hmid e (by rw [e1]; simp [he])
    obtain ⟨nx, hnx⟩ : ∃ nx, ((S ++ [(hi, (none : Option (K × V)))]).map Prod.fst).head? =
        some nx := by
      cases S with
      | nil => exact ⟨hi, rfl⟩
      | cons s S2 => exact ⟨s.1, rfl⟩
    have h1 := rev_advance_spec hR hT S (A ++ [(a, some x)]) [(hi, none)] hi nx
      (by rw [e1]; simp) hSd rfl hnx
    have hN2 : mid ++ [(hi, none)] = A ++ (a, some x) :: (S ++ [(hi, none)]) := by
      rw [e1]; simp
    obtain ⟨hprev, hderef, -, hnot⟩ := rev_step hR hT hN2 hnx
    rw [← e4]
    refine ⟨_, a, h1, ?_, hprev, hR.payload_eq (by rw [hT, e1]; simp), hderef⟩
    simp only [ne_eq, Option.some.injEq]
    rintro rfl
    apply hnot
    rw [e1] at hhead
    cases A with
    | nil =>
      simp only [List.nil_append, List.cons_append, List.map_cons, List.head?_cons,
        Option.some.injEq] at hhead
      rw [← hhead]; simp
    | cons a0 A2 =>
      simp only [List.cons_append, List.map_cons, List.head?_cons, Option.some.injEq] at hhead
      rw [← hhead]; simp

end linorder

end ft

namespace ft
open color_type
variable {K V : Type}

/-! ### Relational operators -/

theorem pair_ne_iff [DecidableEq K] [DecidableEq V] (x y : K × V) :
    pair_ne x y = true ↔ x ≠ y := by
  obtain ⟨x1, x2⟩ := x
  obtain ⟨y1, y2⟩ := y
  simp only [pair_ne, Bool.or_eq_true, decide_eq_true_eq, ne_eq, Prod.mk.injEq, not_and]
  constructor
  · rintro (h | h) h1
    · exact absurd h1 h
    · exact h
  · intro h
    by_cases h1 : x1 = y1
    · exact Or.inr (h h1)
    · exact Or.inl h1

section lex
variable [LinearOrder K] [LinearOrder V]

theorem pair_lt_iff (x y : K × V) :
    pair_lt x y = true ↔ x.1 < y.1 ∨ (x.1 = y.1 ∧ x.2 < y.2) := by
  simp only [pair_lt, Bool.or_eq_true, decide_eq_true_eq, Bool.and_eq_true, Bool.not_eq_true',
    decide_eq_false_iff_not, not_lt]
  constructor
  · rintro (h | ⟨h1, h2⟩)
    · exact Or.inl h
    · rcases lt_or_eq_of_le h1 with h3 | h3
      · exact Or.inl h3
      · exact Or.inr ⟨h3, h2⟩
  · rintro (h | ⟨h1, h2⟩)
    · exact Or.inl h
    · exact Or.inr ⟨le_of_eq h1, h2⟩

theorem pair_lt_iff_lex (x y : K × V) :
    pair_lt x y = true ↔ Prod.Lex (· < ·) (· < ·) x y := by
  rw [pair_lt_iff, Prod.lex_def]

theorem pair_lt_irrefl (x : K × V) : pair_lt x x = false := by
  rw [← Bool.not_eq_true, pair_lt_iff]
  simp

theorem pair_lt_asymm {x y : K × V} (h : pair_lt x y = true) : pair_lt y x = false := by
  rw [← Bool.not_eq_true, pair_lt_iff]
  rw [pair_lt_iff] at h
  rintro (h1 | ⟨h1, h2⟩)
  · rcases h with h3 | ⟨h3, -⟩
    · exact lt_asymm h1 h3
    · rw [h3] at h1; exact lt_irrefl _ h1
  · rcases h with h3 | ⟨-, h4⟩
    · rw [h1] at h3; exact lt_irrefl _ h3
    · exact lt_asymm h2 h4

theorem pair_eq_of_not_lt {x y : K × V} (h1 : pair_lt x y = false) (h2 : pair_lt y x = false) :
    x = y := by
  rw [← Bool.not_eq_true, pair_lt_iff] at h1 h2
  simp only [not_or, not_and, not_lt] at h1 h2
  have e1 : x.1 = y.1 := le_antisymm h2.1 h1.1
  have e2 : x.2 = y.2 := le_antisymm (h2.2 e1.symm) (h1.2 e1)
  exact Prod.ext e1 e2

/-- The comparison `lex_lt` is the lexicographic order on sequences of pairs, the pairs
being ordered lexicographically. -/
theorem lex_lt_iff : ∀ (l1 l2 : List (K × V)),
    lex_lt l1 l2 = true ↔ List.Lex (Prod.Lex (· < ·) (· < ·)) l1 l2 := by
  intro l1
  induction l1 with
  | nil =>
    intro l2
    cases l2 with
    | nil =>
      simp only [lex_lt, Bool.false_eq_true, false_iff]
      intro h; cases h
    | cons y ys =>
      simp only [lex_lt, true_iff]
      exact List.Lex.nil
  | cons x xs ih =>
    intro l2
    cases l2 with
    | nil =>
      simp only [lex_lt, Bool.false_eq_true, false_iff]
      intro h; cases h
    | cons y ys =>
      by_cases h1 : pair_lt x y = true
      · simp only [lex_lt, h1, if_true, true_iff]
        exact List.Lex.rel ((pair_lt_iff_lex x y).1 h1)
      · by_cases h2 : pair_lt y x = true
        · simp only [lex_lt, h1, h2, if_true, if_false, Bool.false_eq_true, false_iff]
          intro h
          cases h with
          | cons h3 => rw [pair_lt_irrefl] at h2; cases h2
          | rel h3 => exact h1 ((pair_lt_iff_lex x y).2 h3)
        · have e := pair_eq_of_not_lt (by simpa using h1) (by simpa using h2)
          subst e
          simp only [lex_lt, pair_lt_irrefl, Bool.false_eq_true, if_false]
          rw [ih ys]
          constructor
          · intro h; exact List.Lex.cons h
          · intro h
            cases h with
            | cons h3 => exact h3
            | rel h3 => exact absurd ((pair_lt_iff_lex x x).2 h3) h1

theorem lex_lt_irrefl : ∀ (l : List (K × V)), lex_lt l l = false := by
  intro l
  induction l with
  | nil => rfl
  | cons x xs ih => simp [lex_lt, pair_lt_irrefl, ih]

theorem lex_lt_asymm : ∀ (l1 l2 : List (K × V)), lex_lt l1 l2 = true → lex_lt l2 l1 = false := by
  intro l1
  induction l1 with
  | nil =>
    intro l2 h
    cases l2 with
    | nil => rfl
    | cons y ys => rfl
  | cons x xs ih =>
    intro l2 h
    cases l2 with
    | nil => simp [lex_lt] at h
    | cons y ys =>
      by_cases h1 : pair_lt x y = true
      · simp [lex_lt, pair_lt_asymm h1, h1]
      · by_cases h2 : pair_lt y x = true
        · simp [lex_lt, h1, h2] at h
        · simp only [lex_lt, h1, h2, if_false, Bool.false_eq_true] at h ⊢
          exact ih ys h

theorem lex_lt_total : ∀ (l1 l2 : List (K × V)), lex_lt l1 l2 = false → lex_lt l2 l1 = false →
    l1 = l2 := by
  intro l1
  induction l1 with
  | nil =>
    intro l2 h1 h2
    cases l2 with
    | nil => rfl
    | cons y ys => simp [lex_lt] at h1
  | cons x xs ih =>
    intro l2 h1 h2
    cases l2 with
    | nil => simp [lex_lt] at h2
    | cons y ys =>
      by_cases g1 : pair_lt x y = true
      · simp [lex_lt, g1] at h1
      · by_cases g2 : pair_lt y x = true
        · simp [lex_lt, g2] at h2
        · have e := pair_eq_of_not_lt (by simpa using g1) (by simpa using g2)
          subst e
          simp only [lex_lt, g1, if_false, Bool.false_eq_true] at h1 h2
          rw [ih ys h1 h2]

end lex

section loops
variable [LinearOrder K]

/-- The loop of `operator==`, started at two positions with as many data nodes after the one
as after the other, compares the pairs from there on. -/
theorem eq_loop_spec [DecidableEq V] {a b : map K V} {Ta Tb : tree K V} (hA : InvT a Ta)
    (hB : InvT b Tb) {lo1 hi1 lo2 hi2 : Nat} {mid1 mid2 : List (Nat × Option (K × V))}
    (hT1 : Ta.elems = (lo1, none) :: (mid1 ++ [(hi1, none)]))
    (hT2 : Tb.elems = (lo2, none) :: (mid2 ++ [(hi2, none)]))
    (hm1 : ∀ e ∈ mid1, e.2 ≠ none) (hm2 : ∀ e ∈ mid2, e.2 ≠ none)
    (hend : a.end_ = some (some hi1)) :
    ∀ (S1 S2 A1 A2 : List (Nat × Option (K × V))) (c1 c2 fuel : Nat),
    mid1 = A1 ++ S1 → mid2 = A2 ++ S2 → S1.length = S2.length →
    ((S1 ++ [(hi1, none)]).map Prod.fst).head? = some c1 →
    ((S2 ++ [(hi2, none)]).map Prod.fst).head? = some c2 → S1.length < fuel →
    map.eq_loop fuel a b (some c1) (some c2) =
      some (decide (S1.filterMap Prod.snd = S2.filterMap Prod.snd)) := by
  intro S1
  induction S1 with
  | nil =>
    intro S2 A1 A2 c1 c2 fuel _ _ hlen hc1 _ hf
    obtain ⟨fuel, rfl⟩ : ∃ f, fuel = f + 1 := ⟨fuel - 1, by omega⟩
    have : S2 = [] := List.eq_nil_of_length_eq_zero hlen.symm
    subst this
    simp only [List.nil_append, List.map_cons, List.map_nil, List.head?_cons,
      Option.some.injEq] at hc1
    subst hc1
    simp [map.eq_loop, hend]
  | cons e1 S1 ih =>
    intro S2 A1 A2 c1 c2 fuel h1 h2 hlen hc1 hc2 hf
    obtain ⟨fuel, rfl⟩ : ∃ f, fuel = f + 1 := ⟨fuel - 1, by omega⟩
    cases S2 with
    | nil => simp at hlen
    | cons e2 S2 =>
      obtain ⟨a1, v1⟩ := e1
      obtain ⟨a2, v2⟩ := e2
      simp only [List.cons_append, List.map_cons, List.head?_cons, Option.some.injEq] at hc1 hc2
      subst hc1
      subst hc2
      cases v1 with
      | none => exact absurd rfl (hm1 (a1, none) (by rw [h1]; simp))
      | some x =>
        cases v2 with
        | none => exact absurd rfl (hm2 (a2, none) (by rw [h2]; simp))
        | some y =>
          rw [h1] at hT1
          rw [h2] at hT2
          obtain ⟨hne1, hval1, n1, hn1, hnext1⟩ := scan_position hA.1 hT1
          obtain ⟨-, hval2, n2, hn2, hnext2⟩ := scan_position hB.1 hT2
          by_cases hxy : x = y
          · subst hxy
            have hp : pair_ne x x = false := by
              rw [← Bool.not_eq_true, pair_ne_iff]; simp
            have h3 := ih S2 (A1 ++ [(a1, some x)]) (A2 ++ [(a2, some x)]) n1 n2 fuel
              (by rw [h1]; simp) (by rw [h2]; simp)
              (by simpa using hlen) hn1 hn2 (by simp only [List.length_cons] at hf; omega)
            simp [map.eq_loop, hend, hne1, hval1, hval2, hnext1, hnext2, hp, h3,
              List.filterMap_cons]
          · have hp : pair_ne x y = true := (pair_ne_iff x y).2 hxy
            simp [map.eq_loop, hend, hne1, hval1, hval2, hnext1, hnext2, hp,
              List.filterMap_cons, hxy]

/-- The non-member `operator==` compares the in-order sequences of pairs. -/
theorem op_eq_spec [DecidableEq V] {a b : map K V} {Ta Tb : tree K V} (hA : InvT a Ta)
    (hB : InvT b Tb) : a.op_eq b = some (decide (a.to_list = b.to_list)) := by
  obtain ⟨lo1, hi1, mid1, hT1, hm1, hend1⟩ := hA.elems_frame
  obtain ⟨lo2, hi2, mid2, hT2, hm2, hend2⟩ := hB.elems_frame
  obtain ⟨-, hl1, -, -, hlen1⟩ := data_frame hA hT1 hm1
  obtain ⟨-, hl2, -, -, hlen2⟩ := data_frame hB hT2 hm2
  obtain ⟨b1, hb1, hh1, -⟩ := begin_frame hA hT1 hend1
  obtain ⟨b2, hb2, hh2, -⟩ := begin_frame hB hT2 hend2
  by_cases hsz : a.size = b.size
  · have hlen : mid1.length = mid2.length := by
      rw [hlen1, hlen2]; exact hsz
    have := eq_loop_spec hA hB hT1 hT2 hm1 hm2 hend1 mid1 mid2 [] [] b1 b2 (a._sz + 1) rfl rfl
      hlen hh1 hh2 (by omega)
    simp [map.op_eq, hsz, hb1, hb2, this, hl1, hl2]
  · have hne : a.to_list ≠ b.to_list := by
      intro h
      apply hsz
      rw [hA.size_to_list, hB.size_to_list, h]
    simp [map.op_eq, hsz, hne]

end loops

section lexloop
variable [LinearOrder K] [LinearOrder V]

/-- The loop of `lexicographical_compare`, started at two positions, compares the pairs from
there on lexicographically. -/
theorem lexicographical_compare_loop_spec {a b : map K V} {Ta Tb : tree K V}
    (hA : InvT a Ta) (hB : InvT b Tb) {lo1 hi1 lo2 hi2 : Nat}
    {mid1 mid2 : List (Nat × Option (K × V))}
    (hT1 : Ta.elems = (lo1, none) :: (mid1 ++ [(hi1, none)]))
    (hT2 : Tb.elems = (lo2, none) :: (mid2 ++ [(hi2, none)]))
    (hm1 : ∀ e ∈ mid1, e.2 ≠ none) (hm2 : ∀ e ∈ mid2, e.2 ≠ none) :
    ∀ (S1 S2 A1 A2 : List (Nat × Option (K × V))) (c1 c2 fuel : Nat),
    mid1 = A1 ++ S1 → mid2 = A2 ++ S2 →
    ((S1 ++ [(hi1, none)]).map Prod.fst).head? = some c1 →
    ((S2 ++ [(hi2, none)]).map Prod.fst).head? = some c2 → S1.length < fuel →
    map.lexicographical_compare_loop fuel a b (some c1) (some hi1) (some c2) (some hi2) =
      some (lex_lt (S1.filterMap Prod.snd) (S2.filterMap Prod.snd)) := by
  intro S1
  induction S1 with
  | nil =>
    intro S2 A1 A2 c1 c2 fuel _ h2 hc1 hc2 hf
    obtain ⟨fuel, rfl⟩ : ∃ f, fuel = f + 1 := ⟨fuel - 1, by omega⟩
    simp only [List.nil_append, List.map_cons, List.map_nil, List.head?_cons,
      Option.some.injEq] at hc1
    subst hc1
    cases S2 with
    | nil =>
      simp only [List.nil_append, List.map_cons, List.map_nil, List.head?_cons,
        Option.some.injEq] at hc2
      subst hc2
      simp [map.lexicographical_compare_loop, lex_lt]
    | cons e2 S2 =>
      obtain ⟨a2, v2⟩ := e2
      simp only [List.cons_append, List.map_cons, List.head?_cons, Option.some.injEq] at hc2
      subst hc2
      cases v2 with
      | none => exact absurd rfl (hm2 (a2, none) (by rw [h2]; simp))
      | some y =>
        rw [h2] at hT2
        obtain ⟨hne2, -, -⟩ := scan_position hB.1 hT2
        simp [map.lexicographical_compare_loop, lex_lt, hne2, List.filterMap_cons]
  | cons e1 S1 ih =>
    intro S2 A1 A2 c1 c2 fuel h1 h2 hc1 hc2 hf
    obtain ⟨fuel, rfl⟩ : ∃ f, fuel = f + 1 := ⟨fuel - 1, by omega⟩
    obtain ⟨a1, v1⟩ := e1
    simp only [List.cons_append, List.map_cons, List.head?_cons, Option.some.injEq] at hc1
    subst hc1
    cases v1 with
    | none => exact absurd rfl (hm1 (a1, none) (by rw [h1]; simp))
    | some x =>
      rw [h1] at hT1
      obtain ⟨hne1, hval1, n1, hn1, hnext1⟩ := scan_position hA.1 hT1
      cases S2 with
      | nil =>
        simp only [List.nil_append, List.map_cons, List.map_nil, List.head?_cons,
          Option.some.injEq] at hc2
        subst hc2
        simp [map.lexicographical_compare_loop, lex_lt, hne1, List.filterMap_cons]
      | cons e2 S2 =>
        obtain ⟨a2, v2⟩ := e2
        simp only [List.cons_append, List.map_cons, List.head?_cons, Option.some.injEq] at hc2
        subst hc2
        cases v2 with
        | none => exact absurd rfl (hm2 (a2, none) (by rw [h2]; simp))
        | some y =>
          rw [h2] at hT2
          obtain ⟨hne2, hval2, n2, hn2, hnext2⟩ := scan_position hB.1 hT2
          by_cases g1 : pair_lt x y = true
          · simp [map.lexicographical_compare_loop, lex_lt, hne1, hne2, hval1, hval2, g1,
              List.filterMap_cons]
          · by_cases g2 : pair_lt y x = true
            · simp [map.lexicographical_compare_loop, lex_lt, hne1, hne2, hval1, hval2, g1, g2,
                List.filterMap_cons]
            · have h3 := ih S2 (A1 ++ [(a1, some x)]) (A2 ++ [(a2, some y)]) n1 n2 fuel
                (by rw [h1]; simp) (by rw [h2]; simp) hn1 hn2
                (by simp only [List.length_cons] at hf; omega)
              simp [map.lexicographical_compare_loop, lex_lt, hne1, hne2, hval1, hval2, g1, g2,
                hnext1, hnext2, h3, List.filterMap_cons]

/-- The non-member `operator<` compares the in-order sequences of pairs
lexicographically. -/
theorem op_lt_spec {a b : map K V} {Ta Tb : tree K V} (hA : InvT a Ta) (hB : InvT b Tb) :
    a.op_lt b = some (lex_lt a.to_list b.to_list) := by
  obtain ⟨lo1, hi1, mid1, hT1, hm1, hend1⟩ := hA.elems_frame
  obtain ⟨lo2, hi2, mid2, hT2, hm2, hend2⟩ := hB.elems_frame
  obtain ⟨-, hl1, -, -, hlen1⟩ := data_frame hA hT1 hm1
  obtain ⟨-, hl2, -, -, hlen2⟩ := data_frame hB hT2 hm2
  obtain ⟨b1, hb1, hh1, -⟩ := begin_frame hA hT1 hend1
  obtain ⟨b2, hb2, hh2, -⟩ := begin_frame hB hT2 hend2
  have := lexicographical_compare_loop_spec hA hB hT1 hT2 hm1 hm2 mid1 mid2 [] [] b1 b2
    (a._sz + 1) rfl rfl hh1 hh2 (by omega)
  simp [map.op_lt, hb1, hb2, hend1, hend2, this, hl1, hl2]

end lexloop

end ft

namespace ft

set_option maxRecDepth 100000 in
/-- The state with two elements is reachable. -/
theorem reachable_sample2 : Reachable sample2 :=
  reachable_build [(3, 30), (5, 50)] (by rfl)

end ft

namespace ft
open color_type
variable {K V : Type} [LinearOrder K]

/-! ### Copies -/

/-- Inserting the pairs of a sorted sequence, one after the other, behind pairs of smaller
keys appends the sequence. -/
theorem foldl_list_insert_sorted : ∀ (l acc : List (K × V)),
    (l.map Prod.fst).Pairwise (· < ·) → (∀ x ∈ acc, ∀ y ∈ l, x.1 < y.1) →
    l.foldl list_insert acc = acc ++ l := by
  intro l
  induction l with
  | nil => intro acc _ _; simp
  | cons y l ih =>
    intro acc hs hlt
    simp only [List.map_cons, List.pairwise_cons] at hs
    have hacc : ∀ x ∈ acc, x.1 < y.1 := fun x hx => hlt x hx y (List.mem_cons_self _ _)
    have hno : y.1 ∉ acc.map Prod.fst := by
      intro h
      obtain ⟨x, hx, e⟩ := List.mem_map.1 h
      have := hacc x hx
      rw [e] at this
      exact lt_irrefl _ this
    have hsplit := filter_lt_split (A := acc) (B := []) (k := y.1) hacc (by simp)
    simp only [List.append_nil] at hsplit
    have e1 : list_insert acc y = acc ++ [y] := by
      rw [list_insert, if_neg hno, hsplit.1, hsplit.2]
    rw [List.foldl_cons, e1, ih (acc ++ [y]) hs.2]
    · simp
    · intro x hx z hz
      rcases List.mem_append.1 hx with hx | hx
      · exact hlt x hx z (List.mem_cons_of_mem _ hz)
      · simp only [List.mem_singleton] at hx
        rw [hx]
        exact hs.1 z.1 (List.mem_map_of_mem _ hz)

variable [Inhabited V]

/-- The loop of `insert(first, last)` over the data nodes of another map, from a position up
to `end()`, inserts their pairs in in-order. -/
theorem insert_from_loop_spec {src : map K V} {Ts : tree K V} (hS : InvT src Ts)
    {lo hi : Nat} {mid : List (Nat × Option (K × V))}
    (hT : Ts.elems = (lo, none) :: (mid ++ [(hi, none)])) (hmid : ∀ e ∈ mid, e.2 ≠ none) :
    ∀ (S A : List (Nat × Option (K × V))) (cur fuel : Nat) (m : map K V), mid = A ++ S →
    ((S ++ [(hi, none)]).map Prod.fst).head? = some cur → S.length < fuel →
    Reachable m →
    ∃ m2, map.insert_from_loop fuel src m (some cur) (some hi) = some m2 ∧ Reachable m2 ∧
      m2.to_list = (S.filterMap Prod.snd).foldl list_insert m.to_list := by
  intro S
  induction S with
  | nil =>
    intro A cur fuel m _ hcur hf hm
    obtain ⟨fuel, rfl⟩ : ∃ f, fuel = f + 1 := ⟨fuel - 1, by omega⟩
    simp only [List.nil_append, List.map_cons, List.map_nil, List.head?_cons,
      Option.some.injEq] at hcur
    subst hcur
    exact ⟨m, by simp [map.insert_from_loop], hm, rfl⟩
  | cons e S ih =>
    intro A cur fuel m hA hcur hf hm
    obtain ⟨fuel, rfl⟩ : ∃ f, fuel = f + 1 := ⟨fuel - 1, by omega⟩
    obtain ⟨a, v⟩ := e
    simp only [List.cons_append, List.map_cons, List.head?_cons, Option.some.injEq] at hcur
    subst hcur
    cases v with
    | none => exact absurd rfl (hmid (a, none) (by rw [hA]; simp))
    | some x =>
      rw [hA] at hT
      obtain ⟨hne, hval, nx, hnx, hnext⟩ := scan_position hS.1 hT
      obtain ⟨T, hI⟩ := hm.inv
      obtain ⟨m1, it, b, T1, e1, -, hl1⟩ := insert_to_list hI x
      have hm1 : Reachable m1 := Reachable.insert hm e1
      obtain ⟨m2, e2, hm2, hl2⟩ := ih (A ++ [(a, some x)]) nx fuel m1 (by rw [hA]; simp) hnx
        (by simp only [List.length_cons] at hf; omega) hm1
      refine ⟨m2, ?_, hm2, ?_⟩
      · simp [map.insert_from_loop, hne, hval, e1, hnext, e2]
      · rw [hl2, hl1]; simp [List.filterMap_cons]

/-- Member `insert(first, last)` with `begin()` and `end()` of another map, called on an
empty map, leaves the in-order sequence of the other map. -/
theorem insert_from_spec {src m : map K V} (hs : Reachable src) (hm : Reachable m)
    (hl : m.to_list = []) :
    ∃ b e m2, src.begin = some (some b) ∧ src.end_ = some (some e) ∧
      m.insert_from src (some b) (some e) = some m2 ∧ Reachable m2 ∧
      m2.to_list = src.to_list ∧ m2.size = src.size := by
  obtain ⟨Ts, hS⟩ := hs.inv
  obtain ⟨lo, hi, mid, hT, hmid, hend⟩ := hS.elems_frame
  obtain ⟨-, hl1, hk, hsort, hlen⟩ := data_frame hS hT hmid
  obtain ⟨b, hb, hhead, -⟩ := begin_frame hS hT hend
  obtain ⟨m2, e2, hm2, hl2⟩ := insert_from_loop_spec hS hT hmid mid [] b (src._sz + 1) m rfl
    hhead (by omega) hm
  have hl3 : m2.to_list = src.to_list := by
    rw [hl2, hl, foldl_list_insert_sorted _ [] (by rw [← ekeys_eq_map]; exact hsort) (by simp),
      hl1]
    simp
  refine ⟨b, hi, m2, hb, hend, e2, hm2, hl3, ?_⟩
  obtain ⟨T2, hI2⟩ := hm2.inv
  rw [hI2.size_to_list, hS.size_to_list, hl3]

/-- The copy constructor and the assignment from another map. -/
theorem copy_spec {src : map K V} (hs : Reachable src) :
    (∃ m2, map.copy_ctor src = some m2 ∧ Reachable m2 ∧ m2.to_list = src.to_list ∧
      m2.size = src.size) ∧
    ∀ m : map K V, Reachable m →
      ∃ m2, m.assign src = some m2 ∧ Reachable m2 ∧ m2.to_list = src.to_list ∧
        m2.size = src.size := by
  obtain ⟨Ts, hS⟩ := hs.inv
  constructor
  · obtain ⟨m0, e0, i0, -, -⟩ := default_inv (K := K) (V := V)
    have hr0 : Reachable m0 := Reachable.ctor e0
    obtain ⟨b, e, m2, hb, he, e2, hm2, hl, hsz⟩ := insert_from_spec hs hr0 (skeleton_to_list i0)
    refine ⟨m2, ?_, hm2, hl, hsz⟩
    rw [map.mk_default] at e0
    simp [map.copy_ctor, hS.2.1, e0, hb, he, e2]
  · intro m hm
    obtain ⟨T, hI⟩ := hm.inv
    obtain ⟨m1, e1, i1, -, -⟩ := clear_inv hI
    have hr1 : Reachable m1 := Reachable.clear hm e1
    obtain ⟨b, e, m2, hb, he, e2, hm2, hl, hsz⟩ := insert_from_spec hs hr1 (skeleton_to_list i1)
    exact ⟨m2, by simp [map.assign, e1, hb, he, e2], hm2, hl, hsz⟩

end ft

namespace ft
open color_type
variable {K V : Type}

/-! ### Trees held by two memories -/

/-- Two memories that hold the same tree below the same parent agree on its nodes. -/
theorem Shaped.mem_eq {mem mem2 : Nat → Option (node_type K V)} {par : ptr} {t : tree K V}
    (h : Shaped mem par t) (h2 : Shaped mem2 par t) : ∀ a ∈ t.addrs, mem2 a = mem a := by
  induction t generalizing par with
  | nil => intro a ha; simp at ha
  | node b c v l r ihl ihr =>
    obtain ⟨h1, hl, hr⟩ := h
    obtain ⟨h3, hl2, hr2⟩ := h2
    intro a ha
    simp only [tree.addrs_node, List.mem_append, List.mem_cons] at ha
    rcases ha with ha | rfl | ha
    · exact ihl hl hl2 a ha
    · rw [h1, h3]
    · exact ihr hr hr2 a ha

theorem fill_cells (p : List (frame K V)) {t t2 : tree K V} (h : t2.cells = t.cells) :
    (fill p t2).cells = (fill p t).cells := by
  induction p generalizing t t2 with
  | nil => exact h
  | cons f p ih => cases f <;> simp only [fill_L, fill_R] <;> exact ih (by simp [tree.cells, h])

theorem Rep.example_right_pair :
    Rep right_pair (fill [] (.node 0 black (some (1, 10)) .nil
      (.node 1 red (some (2, 20)) .nil .nil))) :=
  ⟨rfl, ⟨rfl, trivial, ⟨rfl, trivial, trivial⟩⟩, by decide, by decide⟩

theorem Rep.example_empty : Rep empty_state (skeleton 0 1) :=
  ⟨rfl, ⟨rfl, trivial, ⟨rfl, trivial, trivial⟩⟩, by decide, by decide⟩

end ft

namespace ft
open color_type
variable {K V : Type}

/-! ## The claims -/

/-- C30: on a tree with consistent links, `_l_rotate(x)` at a node `x` with a right child `y`
keeps the in-order sequence of nodes with their colours and payloads, puts `y` into the
slot of `x` and leaves consistent links, and `_r_rotate(y)` then restores the original tree;
symmetrically `_r_rotate(x)` at a node with a left child `y`, undone by `_l_rotate(y)`. -/
theorem rotate_preserves_and_inverts :
    (∀ (m : map K V) (p : List (frame K V)) (x y : Nat) (cx cy : color_type)
      (vx vy : Option (K × V)) (A B C : tree K V),
      Rep m (fill p (.node x cx vx A (.node y cy vy B C))) →
      ∃ m2 m3, map._l_rotate m (some x) = some m2 ∧
        Rep m2 (fill p (.node y cy vy (.node x cx vx A B) C)) ∧
        (fill p (.node y cy vy (.node x cx vx A B) C)).cells =
          (fill p (.node x cx vx A (.node y cy vy B C))).cells ∧
        map._r_rotate m2 (some y) = some m3 ∧
        Rep m3 (fill p (.node x cx vx A (.node y cy vy B C))) ∧
        m3._root = m._root ∧
        ∀ a ∈ (fill p (.node x cx vx A (.node y cy vy B C))).addrs, m3.mem a = m.mem a) ∧
    (∀ (m : map K V) (p : List (frame K V)) (x y : Nat) (cx cy : color_type)
      (vx vy : Option (K × V)) (A B C : tree K V),
      Rep m (fill p (.node x cx vx (.node y cy vy C B) A)) →
      ∃ m2 m3, map._r_rotate m (some x) = some m2 ∧
        Rep m2 (fill p (.node y cy vy C (.node x cx vx B A))) ∧
        (fill p (.node y cy vy C (.node x cx vx B A))).cells =
          (fill p (.node x cx vx (.node y cy vy C B) A)).cells ∧
        map._l_rotate m2 (some y) = some m3 ∧
        Rep m3 (fill p (.node x cx vx (.node y cy vy C B) A)) ∧
        m3._root = m._root ∧
        ∀ a ∈ (fill p (.node x cx vx (.node y cy vy C B) A)).addrs, m3.mem a = m.mem a) := by
  constructor
  · intro m p x y cx cy vx vy A B C h
    obtain ⟨m2, e2, r2, -⟩ := l_rotate_spec h
    obtain ⟨m3, e3, r3, -⟩ := r_rotate_spec r2
    refine ⟨m2, m3, e2, r2, fill_cells p (by simp [tree.cells]), e3, r3, ?_, ?_⟩
    · rw [r3.root, h.root]
    · exact Shaped.mem_eq h.shaped r3.shaped
  · intro m p x y cx cy vx vy A B C h
    obtain ⟨m2, e2, r2, -⟩ := r_rotate_spec h
    obtain ⟨m3, e3, r3, -⟩ := l_rotate_spec r2
    refine ⟨m2, m3, e2, r2, fill_cells p (by simp [tree.cells]), e3, r3, ?_, ?_⟩
    · rw [r3.root, h.root]
    · exact Shaped.mem_eq h.shaped r3.shaped

theorem rotate_preserves_and_inverts_witness :
    Rep right_pair (fill [] (.node 0 black (some (1, 10)) .nil
      (.node 1 red (some (2, 20)) .nil .nil))) ∧
    ∃ m2 m3, map._l_rotate right_pair (some 0) = some m2 ∧
      Rep m2 (fill [] (.node 1 red (some (2, 20))
        (.node 0 black (some (1, 10)) .nil .nil) .nil)) ∧
      (fill [] (.node 1 red (some (2, 20))
        (.node 0 black (some (1, 10)) (.nil : tree Nat Nat) .nil) .nil)).cells =
        (fill [] (.node 0 black (some (1, 10)) .nil
          (.node 1 red (some (2, 20)) .nil .nil))).cells ∧
      map._r_rotate m2 (some 1) = some m3 ∧
      Rep m3 (fill [] (.node 0 black (some (1, 10)) .nil
        (.node 1 red (some (2, 20)) .nil .nil))) ∧
      m3._root = right_pair._root ∧
      ∀ a ∈ (fill [] (.node 0 black (some (1, 10)) (.nil : tree Nat Nat)
        (.node 1 red (some (2, 20)) .nil .nil))).addrs, m3.mem a = right_pair.mem a :=
  ⟨Rep.example_right_pair,
    rotate_preserves_and_inverts.1 right_pair [] 0 1 black red (some (1, 10)) (some (2, 20))
      .nil .nil .nil Rep.example_right_pair⟩

/-- C31: on an empty map, whose tree is the root end node with the other end node as its
right child, `insert` returns the new node, which is the black root; the former root is its
childless left child, the other end node its childless right child, and `size()` is `1`. -/
theorem insert_into_empty [DecidableEq K] (m : map K V) (a b : Nat) (x : K × V)
    (h : Rep m (skeleton a b)) (hsz : m._sz = 0) :
    ∃ m2, m.insert x = some (m2, some m.brk, true) ∧
      Rep m2 (.node m.brk black (some x) (.node a black none .nil .nil)
        (.node b black none .nil .nil)) ∧ m2.size = 1 := by
  obtain ⟨m2, e, r2, hbrk, hsz2, hc2⟩ := insert_body_first (h := h) x m.brk
  have r3 := r2.with_sz (m2._sz + 1)
  obtain ⟨m3, e3, r4, a3⟩ := Rep.set_color (p := []) r3 black
  refine ⟨m3, ?_, r4, ?_⟩
  · have hle : m2._sz + 1 ≤ 2 := by omega
    refine insert_of_body e ?_
    rw [if_pos hle]
    have hroot : m2._root = some m.brk := r2.root
    rw [← hroot] at e3
    exact e3
  · show m3._sz = 1
    rw [a3.2.1]
    show m2._sz + 1 = 1
    omega

theorem insert_into_empty_witness :
    Rep empty_state (skeleton 0 1) ∧ empty_state._sz = 0 ∧
    ∃ m2, empty_state.insert (5, 50) = some (m2, some empty_state.brk, true) ∧
      Rep m2 (.node empty_state.brk black (some (5, 50)) (.node 0 black none .nil .nil)
        (.node 1 black none .nil .nil)) ∧ m2.size = 1 :=
  ⟨Rep.example_empty, rfl, insert_into_empty empty_state 0 1 (5, 50) Rep.example_empty rfl⟩

end ft

namespace ft
open color_type
variable {K V : Type} [LinearOrder K] [Inhabited V]

/-! ## The claims about reachable states -/

/-- C1: in every state reachable from the default-constructed map by `insert`, `operator[]`,
`erase` and `clear`, with the comparator `std::less` of a total order, the in-order sequence
of the keys of the data nodes is strictly increasing. -/
theorem keys_strictly_increasing (m : map K V) (h : Reachable m) :
    m.keys.Pairwise (· < ·) := by
  obtain ⟨T, hI⟩ := h.inv
  rw [hI.1.keys_eq]
  exact hI.sorted

set_option maxRecDepth 100000 in
theorem keys_strictly_increasing_witness :
    Reachable sample7 ∧ sample7.keys = [1, 3, 4, 5, 7, 8, 9] ∧
      sample7.keys.Pairwise (· < ·) :=
  ⟨reachable_sample7, by decide, keys_strictly_increasing sample7 reachable_sample7⟩

/-- C2: in every reachable state the black height is uniform: from every node of the tree, all
downward paths to a path end (an end node or an absent child) pass the same number of black
data nodes. -/
theorem black_height_uniform (m : map K V) (h : Reachable m) (a : Nat) (ha : a ∈ m.nodes) :
    m.black_counts (some a) ≠ [] ∧
    ∀ x ∈ m.black_counts (some a), ∀ y ∈ m.black_counts (some a), x = y := by
  obtain ⟨T, hI⟩ := h.inv
  rw [hI.1.nodes_eq, tree.addrs, List.mem_map] at ha
  obtain ⟨⟨a2, v⟩, hmem, rfl⟩ := ha
  obtain ⟨q, c, L, R, rfl⟩ := tree.mem_decomp hmem
  obtain ⟨hS, hf⟩ := hI.1.subtree
  have e : m.black_counts (some a2) = (tree.node a2 c v L R).black_counts :=
    black_counts_rec_eq _ _ _ hS hf
  rw [e]
  cases v with
  | none => simp [tree.black_counts]
  | some x =>
    obtain ⟨n, hb, -⟩ := hI.bal_at
    obtain ⟨h1, h2⟩ := hb.black_counts_eq
    exact ⟨h1, fun x hx y hy => (h2 x hx).trans (h2 y hy).symm⟩

set_option maxRecDepth 100000 in
theorem black_height_uniform_witness :
    Reachable sample7 ∧ 2 ∈ sample7.nodes ∧
    sample7.black_counts (some 2) = [2, 2, 2, 2, 2, 2, 2, 2] ∧
    (sample7.black_counts (some 2) ≠ [] ∧
      ∀ x ∈ sample7.black_counts (some 2), ∀ y ∈ sample7.black_counts (some 2), x = y) :=
  ⟨reachable_sample7, by decide, by decide,
    black_height_uniform sample7 reachable_sample7 2 (by decide)⟩

/-- C3: in every reachable state no red data node has a red child: for a red data node the
test `s && s->color == red` fails on both children. -/
theorem no_red_node_has_red_child (m : map K V) (h : Reachable m) (a : Nat)
    (n : node_type K V) (ha : a ∈ m.data_nodes) (hn : m.mem a = some n) (hc : n.color = red) :
    map.is_red m n.l = some false ∧ map.is_red m n.r = some false := by
  obtain ⟨T, hI⟩ := h.inv
  obtain ⟨x, hx⟩ := hI.1.mem_data_nodes.1 ha
  obtain ⟨q, c, L, R, rfl⟩ := tree.mem_decomp hx
  have hcell := Rep.cell hI.1
  rw [hn] at hcell
  simp only [Option.some.injEq] at hcell
  subst hcell
  simp only at hc
  subst hc
  obtain ⟨k, hb, -⟩ := hI.bal_at
  cases hb with
  | red hl hr =>
    constructor
    · cases L with
      | nil => simp [map.is_red]
      | node l cl vl ll lr =>
        have h1 := hl.color_eq
        simp only [tree.color] at h1
        subst h1
        have hcl := Rep.cell (p := .L a red (some x) R :: q) hI.1
        simp [map.is_red, get_color_eq hcl]
    · cases R with
      | nil => simp [map.is_red]
      | node r cr vr rl rr =>
        have h1 := hr.color_eq
        simp only [tree.color] at h1
        subst h1
        have hcr := Rep.cell (p := .R a red (some x) L :: q) hI.1
        simp [map.is_red, get_color_eq hcr]

set_option maxRecDepth 100000 in
theorem no_red_node_has_red_child_witness :
    Reachable sample7 ∧ 5 ∈ sample7.data_nodes ∧
    sample7.mem 5 =
      some { color := red, val := some (1, 10), l := some 0, r := none, parent := some 3 } ∧
    (map.is_red sample7 (some 0) = some false ∧ map.is_red sample7 none = some false) :=
  ⟨reachable_sample7, by decide, by rfl,
    no_red_node_has_red_child sample7 reachable_sample7 5 _ (by decide) (by rfl) rfl⟩

/-- C4: in every reachable state the root node is black. -/
theorem root_is_black (m : map K V) (h : Reachable m) :
    get_color m m._root = some black := by
  obtain ⟨T, hR, -, hcase⟩ := h.inv
  rcases hcase with ⟨-, a, b, rfl⟩ | ⟨hG, -⟩
  · have hc := Rep.cell (p := []) hR
    rw [hR.root]
    exact get_color_eq hc
  · obtain ⟨n, hb⟩ := hG.bal
    cases hb with
    | nil => exact absurd rfl hG.nonempty
    | sentinel a =>
      have hc := Rep.cell (p := []) hR
      rw [hR.root]; exact get_color_eq hc
    | black hl hr =>
      have hc := Rep.cell (p := []) hR
      rw [hR.root]; exact get_color_eq hc

set_option maxRecDepth 100000 in
theorem root_is_black_witness :
    Reachable sample7 ∧ sample7._root = some 2 ∧
      get_color sample7 sample7._root = some black :=
  ⟨reachable_sample7, by decide, root_is_black sample7 reachable_sample7⟩

/-- C5: in every reachable state `size()` is the number of data nodes of the tree, which is
the length of the in-order sequence of pairs. -/
theorem size_counts_data_nodes (m : map K V) (h : Reachable m) :
    m.size = m.data_nodes.length ∧ m.size = m.to_list.length := by
  obtain ⟨T, hI⟩ := h.inv
  have h1 := hI.size_eq
  refine ⟨?_, ?_⟩
  · rw [map.size, h1, hI.1.data_nodes_eq, List.length_map, tree.data]
    generalize T.elems = es
    induction es with
    | nil => rfl
    | cons e es ih =>
      obtain ⟨a, v⟩ := e
      cases v <;> simp [List.filter_cons, ih]
  · rw [map.size, h1, hI.1.to_list_eq]

set_option maxRecDepth 100000 in
theorem size_counts_data_nodes_witness :
    Reachable sample7 ∧ sample7.size = 7 ∧
      (sample7.size = sample7.data_nodes.length ∧ sample7.size = sample7.to_list.length) :=
  ⟨reachable_sample7, by decide, size_counts_data_nodes sample7 reachable_sample7⟩

/-- C6: on a reachable state, `insert` of a pair whose key is not present returns
`(it, true)` where `it` is a data node holding exactly that pair; `size()` grows by one and
the in-order sequence of pairs is the old one with the pair added at its sorted position, the
old pairs being kept as they were. -/
theorem insert_absent_key (m : map K V) (h : Reachable m) (k : K) (v : V)
    (hk : k ∉ m.keys) :
    ∃ m2 it pre post, m.insert (k, v) = some (m2, some it, true) ∧
      it ∈ m2.data_nodes ∧ m2.payload it = some (k, v) ∧ m2.size = m.size + 1 ∧
      m.to_list = pre ++ post ∧ m2.to_list = pre ++ (k, v) :: post ∧
      (∀ y ∈ pre, y.1 < k) ∧ (∀ y ∈ post, k < y.1) := by
  obtain ⟨T, hI⟩ := h.inv
  rw [hI.1.keys_eq] at hk
  rcases insert_spec hI (k, v) with ⟨a, w, hmem, -⟩ | ⟨m2, T2, pre, post, e, i2, hsz, -, hT, hT2,
    hlt, hgt⟩
  · exact absurd (mem_ekeys.2 ⟨a, w, hmem⟩) hk
  · have hmem : (m.brk, some (k, v)) ∈ T2.elems := by rw [hT2]; simp
    refine ⟨m2, m.brk, pre.filterMap Prod.snd, post.filterMap Prod.snd, e,
      i2.1.mem_data_nodes.2 ⟨_, hmem⟩, i2.1.payload_eq hmem, hsz, ?_, ?_, ?_, ?_⟩
    · rw [hI.1.to_list_eq, tree.data, hT, List.filterMap_append]
    · rw [i2.1.to_list_eq, tree.data, hT2, List.filterMap_append]; rfl
    · intro y hy
      exact hlt y.1 (List.mem_map.2 ⟨y, hy, rfl⟩)
    · intro y hy
      exact hgt y.1 (List.mem_map.2 ⟨y, hy, rfl⟩)

set_option maxRecDepth 100000 in
theorem insert_absent_key_witness :
    Reachable sample7 ∧ 6 ∉ sample7.keys ∧
    ∃ m2 it pre post, sample7.insert (6, 60) = some (m2, some it, true) ∧
      it ∈ m2.data_nodes ∧ m2.payload it = some (6, 60) ∧ m2.size = sample7.size + 1 ∧
      sample7.to_list = pre ++ post ∧ m2.to_list = pre ++ (6, 60) :: post ∧
      (∀ y ∈ pre, y.1 < 6) ∧ (∀ y ∈ post, 6 < y.1) :=
  ⟨reachable_sample7, by decide,
    insert_absent_key sample7 reachable_sample7 6 60 (by decide)⟩

/-- C7: on a reachable state, `insert` of a pair whose key is present returns the node that
holds the key and `false`, and the state it leaves is the state it was called on: nothing of
the tree changes and the stored value is not overwritten. -/
theorem insert_present_key (m : map K V) (h : Reachable m) (k : K) (v : V)
    (hk : k ∈ m.keys) :
    ∃ it v0, m.insert (k, v) = some (m, some it, false) ∧ it ∈ m.data_nodes ∧
      m.payload it = some (k, v0) := by
  obtain ⟨T, hI⟩ := h.inv
  rw [hI.1.keys_eq] at hk
  rcases insert_spec hI (k, v) with ⟨a, w, hmem, e⟩ | ⟨m2, T2, pre, post, -, -, -, -, hT, -,
    hlt, hgt⟩
  · exact ⟨a, w, e, hI.1.mem_data_nodes.2 ⟨_, hmem⟩, hI.1.payload_eq hmem⟩
  · rw [hT] at hk
    exact absurd hk (not_mem_of_split hlt hgt)

set_option maxRecDepth 100000 in
theorem insert_present_key_witness :
    Reachable sample7 ∧ 4 ∈ sample7.keys ∧
    ∃ it v0, sample7.insert (4, 44) = some (sample7, some it, false) ∧
      it ∈ sample7.data_nodes ∧ sample7.payload it = some (4, v0) :=
  ⟨reachable_sample7, by decide,
    insert_present_key sample7 reachable_sample7 4 44 (by decide)⟩

/-- C8: on a reachable state, `find(k)` returns the data node whose key is `k` if the map has
one and `end()` otherwise; a node that `find` returns without a payload is the node that
`end()` returns. -/
theorem find_returns_node_or_end (m : map K V) (h : Reachable m) (k : K) :
    (k ∈ m.keys → ∃ a v, m.find k = some (some a) ∧ a ∈ m.data_nodes ∧
      m.payload a = some (k, v)) ∧
    (k ∉ m.keys → m.find k = m.end_) ∧
    (∃ hi, m.end_ = some (some hi) ∧ m.payload hi = none) ∧
    (∀ a, m.find k = some (some a) → m.payload a = none → m.find k = m.end_) := by
  obtain ⟨T, hI⟩ := h.inv
  rw [hI.1.keys_eq]
  obtain ⟨hi, init, e1, e2⟩ := end_spec hI
  have hhi : m.payload hi = none := hI.1.payload_eq (by rw [e2]; simp)
  rcases find_spec hI k with ⟨a, v, e, hmem⟩ | ⟨e, hk⟩
  · refine ⟨fun _ => ⟨a, v, e, hI.1.mem_data_nodes.2 ⟨_, hmem⟩, hI.1.payload_eq hmem⟩,
      fun hk => absurd (mem_ekeys.2 ⟨a, v, hmem⟩) hk, ⟨hi, e1, hhi⟩, ?_⟩
    intro b hb hp
    rw [e] at hb
    simp only [Option.some.injEq] at hb
    subst hb
    rw [hI.1.payload_eq hmem] at hp
    simp at hp
  · exact ⟨fun h2 => absurd h2 hk, fun _ => e, ⟨hi, e1, hhi⟩, fun _ _ _ => e⟩

set_option maxRecDepth 100000 in
theorem find_returns_node_or_end_witness :
    Reachable sample7 ∧ sample7.find 7 = some (some 7) ∧ sample7.find 6 = some (some 1) ∧
    ((7 ∈ sample7.keys → ∃ a v, sample7.find 7 = some (some a) ∧ a ∈ sample7.data_nodes ∧
      sample7.payload a = some (7, v)) ∧
    (7 ∉ sample7.keys → sample7.find 7 = sample7.end_) ∧
    (∃ hi, sample7.end_ = some (some hi) ∧ sample7.payload hi = none) ∧
    (∀ a, sample7.find 7 = some (some a) → sample7.payload a = none →
      sample7.find 7 = sample7.end_)) :=
  ⟨reachable_sample7, by decide, by decide,
    find_returns_node_or_end sample7 reachable_sample7 7⟩

/-- C9: on a reachable state, `erase(pos)` at a data node with key `k` removes exactly the
pair of that node from the in-order sequence of pairs, keeps all other pairs in their order,
makes `size()` one smaller, and `find(k)` returns `end()` afterwards. -/
theorem erase_at_iterator (m : map K V) (h : Reachable m) (a : Nat) (k : K) (v : V)
    (ha : a ∈ m.data_nodes) (hp : m.payload a = some (k, v)) :
    ∃ m2 pre post, m.erase (some a) = some m2 ∧ m.to_list = pre ++ (k, v) :: post ∧
      m2.to_list = pre ++ post ∧ m2.size + 1 = m.size ∧ k ∉ m2.keys ∧
      m2.find k = m2.end_ := by
  obtain ⟨T, hI⟩ := h.inv
  exact erase_data_node hI ha hp

set_option maxRecDepth 100000 in
theorem erase_at_iterator_witness :
    Reachable sample7 ∧ 2 ∈ sample7.data_nodes ∧ sample7.payload 2 = some (5, 50) ∧
    ∃ m2 pre post, sample7.erase (some 2) = some m2 ∧
      sample7.to_list = pre ++ (5, 50) :: post ∧
      m2.to_list = pre ++ post ∧ m2.size + 1 = sample7.size ∧ 5 ∉ m2.keys ∧
      m2.find 5 = m2.end_ :=
  ⟨reachable_sample7, by decide, by decide,
    erase_at_iterator sample7 reachable_sample7 2 5 50 (by decide) (by decide)⟩

/-- C10: on a reachable state, `erase(k)` returns `1` if the key was present and `0`
otherwise; with `0` the state is left as it was, with `1` the key is no longer present and
`size()` is one smaller. -/
theorem erase_by_key (m : map K V) (h : Reachable m) (k : K) :
    (k ∉ m.keys → m.erase_key k = some (m, 0)) ∧
    (k ∈ m.keys → ∃ m2, m.erase_key k = some (m2, 1) ∧ k ∉ m2.keys ∧
      m2.size + 1 = m.size) := by
  obtain ⟨T, hI⟩ := h.inv
  rw [hI.1.keys_eq]
  rcases erase_key_spec hI k with ⟨hk, e⟩ | ⟨a, v, m2, hx, e, e3⟩
  · exact ⟨fun _ => e, fun h2 => absurd h2 hk⟩
  · refine ⟨fun h2 => absurd (mem_ekeys.2 ⟨a, v, hx⟩) h2, fun _ => ?_⟩
    obtain ⟨m3, pre, post, e4, -, -, hsz, hk, -⟩ :=
      erase_data_node hI (hI.1.mem_data_nodes.2 ⟨_, hx⟩) (hI.1.payload_eq hx)
    rw [e3] at e4
    cases e4
    exact ⟨m2, e, hk, hsz⟩

set_option maxRecDepth 100000 in
theorem erase_by_key_witness :
    Reachable sample7 ∧
    (sample7.erase_key 5).map (fun r => (r.1.keys, r.2)) = some ([1, 3, 4, 7, 8, 9], 1) ∧
    ((5 ∉ sample7.keys → sample7.erase_key 5 = some (sample7, 0)) ∧
    (5 ∈ sample7.keys → ∃ m2, sample7.erase_key 5 = some (m2, 1) ∧ 5 ∉ m2.keys ∧
      m2.size + 1 = sample7.size)) :=
  ⟨reachable_sample7, by decide, erase_by_key sample7 reachable_sample7 5⟩

set_option maxRecDepth 100000 in
/-- C11, counterexample: with the comparator `half_less`, a strict weak ordering under which
`2` and `3` are equivalent, `insert` of key `3` into the map that holds key `2` returns `true`
and adds a node: `insert_body` tests `x.first == n->val->first`, not the comparator, so the
map then holds two equivalent keys. -/
theorem equivalent_keys_both_stored :
    half_less 2 3 = false ∧ half_less 3 2 = false ∧
    (map.build half_less [(2, 20)]).map (fun m => m.keys) = some [2] ∧
    ((map.build half_less [(2, 20)]).bind (fun m => m.insert (3, 30))).map
      (fun r => (r.1.keys, r.1.size, r.2.2)) = some ([2, 3], 2, true) := by
  decide
/-- C12: on a reachable state `lower_bound(k)` returns a node `r` that is the first node, among
the data nodes in in-order followed by `end()`, whose key is not less than `k`: the data nodes
before `r` hold keys less than `k`, the pairs from `r` on hold keys that are not less than
`k`, and `r` is `end()` exactly when every key is less than `k`; the tree descent of the
specification returns the same node. -/
theorem lower_bound_first_not_less (m : map K V) (h : Reachable m) (k : K) :
    ∃ r e pre post, m.lower_bound k = some (some r) ∧ m.end_ = some (some e) ∧
      m.data_nodes ++ [e] = pre ++ r :: post ∧
      (∀ a ∈ pre, ∃ kv, m.payload a = some kv ∧ kv.1 < k) ∧
      (∀ kv, m.payload r = some kv → k ≤ kv.1) ∧
      (r = e ↔ ∀ k2 ∈ m.keys, k2 < k) ∧
      (∃ xs ys, m.to_list = xs ++ ys ∧ xs.length = pre.length ∧ (∀ x ∈ xs, x.1 < k) ∧
        (∀ y ∈ ys, k ≤ y.1) ∧ m.payload r = ys.head?) ∧
      m.lower_bound_descent k = some (some r) := by
  obtain ⟨T, hI⟩ := h.inv
  obtain ⟨lo, hi, mid, hT, hmid, hend⟩ := hI.elems_frame
  obtain ⟨pre, post, h1, h2, h3, h4, xs, ys, h5, h6, h7, h8, h9⟩ :=
    scan_frame hI (fun x => decide (x < k))
      (fun a b hab ha => by
        simp only [decide_eq_false_iff_not, not_lt] at ha ⊢
        exact le_trans ha (le_of_lt hab)) hT hmid
  refine ⟨_, hi, pre, post, lower_bound_eq hI k hT hmid hend, hend, h1, ?_, ?_, ?_,
    ⟨xs, ys, h5, h6, ?_, ?_, h9⟩, lower_bound_descent_spec hI k hT hend⟩
  · intro a ha
    obtain ⟨kv, e1, e2⟩ := h2 a ha
    exact ⟨kv, e1, by simpa using e2⟩
  · intro kv hkv
    simpa using h3 kv hkv
  · rw [h4]
    simp
  · intro x hx
    simpa using h7 x hx
  · intro y hy
    simpa using h8 y hy

set_option maxRecDepth 100000 in
theorem lower_bound_first_not_less_witness :
    Reachable sample7b ∧ sample7b.keys = [1, 3, 4, 5, 7, 8, 9] ∧
    sample7b.lower_bound 6 = some (some 6) ∧ sample7b.payload 6 = some (7, 70) ∧
    ∃ r e pre post, sample7b.lower_bound 6 = some (some r) ∧ sample7b.end_ = some (some e) ∧
      sample7b.data_nodes ++ [e] = pre ++ r :: post ∧
      (∀ a ∈ pre, ∃ kv, sample7b.payload a = some kv ∧ kv.1 < 6) ∧
      (∀ kv, sample7b.payload r = some kv → 6 ≤ kv.1) ∧
      (r = e ↔ ∀ k2 ∈ sample7b.keys, k2 < 6) ∧
      (∃ xs ys, sample7b.to_list = xs ++ ys ∧ xs.length = pre.length ∧ (∀ x ∈ xs, x.1 < 6) ∧
        (∀ y ∈ ys, 6 ≤ y.1) ∧ sample7b.payload r = ys.head?) ∧
      sample7b.lower_bound_descent 6 = some (some r) :=
  ⟨reachable_sample7b, by decide, by decide, by decide,
    lower_bound_first_not_less sample7b reachable_sample7b 6⟩

/-- C13: on a reachable state `equal_range(k)` returns the pair of `lower_bound(k)` and
`upper_bound(k)`; the second component is the first node, among the data nodes in in-order
followed by `end()`, whose key is greater than `k`; the half-open range between the two
holds exactly the pairs of key `k`: if `k` is present, the single pair of key `k`, the second
component being the successor of the first, and if `k` is absent the two components are
equal and the range is empty. -/
theorem equal_range_delimits_key (m : map K V) (h : Reachable m) (k : K) :
    ∃ r1 r2 e pre post, m.equal_range k = some (some r1, some r2) ∧
      m.lower_bound k = some (some r1) ∧ m.upper_bound k = some (some r2) ∧
      m.end_ = some (some e) ∧ m.data_nodes ++ [e] = pre ++ r2 :: post ∧
      (∀ a ∈ pre, ∃ kv, m.payload a = some kv ∧ kv.1 ≤ k) ∧
      (∀ kv, m.payload r2 = some kv → k < kv.1) ∧
      (r2 = e ↔ ∀ k2 ∈ m.keys, k2 ≤ k) ∧
      m.upper_bound_descent k = some (some r2) ∧
      m.range (some r1) (some r2) = some (m.to_list.filter (fun x => decide (x.1 = k))) ∧
      (k ∈ m.keys → ∃ v, m.payload r1 = some (k, v) ∧
        m.to_list.filter (fun x => decide (x.1 = k)) = [(k, v)] ∧
        map.it_next m (some r1) = some (some r2)) ∧
      (k ∉ m.keys → r1 = r2 ∧ m.to_list.filter (fun x => decide (x.1 = k)) = []) := by
  obtain ⟨T, hI⟩ := h.inv
  obtain ⟨lo, hi, mid, hT, hmid, hend⟩ := hI.elems_frame
  obtain ⟨pre, post, h1, h2, h3, h4, -⟩ :=
    scan_frame hI (fun x => !decide (k < x))
      (fun a b hab ha => by
        simp only [Bool.not_eq_false_eq_eq_true, decide_eq_true_eq] at ha ⊢
        exact lt_trans ha hab) hT hmid
  obtain ⟨g1, g2, g3⟩ := bounds_frame hI k hT hmid
  have e1 := lower_bound_eq hI k hT hmid hend
  have e2 := upper_bound_eq hI k hT hmid hend
  refine ⟨_, _, hi, pre, post, by simp [map.equal_range, e1, e2], e1, e2, hend, h1, ?_, ?_, ?_,
    upper_bound_descent_spec hI k hT hend, g1, g2, g3⟩
  · intro a ha
    obtain ⟨kv, e3, e4⟩ := h2 a ha
    exact ⟨kv, e3, by simpa using e4⟩
  · intro kv hkv
    simpa using h3 kv hkv
  · rw [h4]
    simp

set_option maxRecDepth 100000 in
theorem equal_range_delimits_key_witness :
    Reachable sample7b ∧ sample7b.equal_range 5 = some (some 5, some 6) ∧
    sample7b.payload 5 = some (5, 50) ∧ sample7b.payload 6 = some (7, 70) ∧
    sample7b.upper_bound 5 = some (some 6) ∧
    ∃ r1 r2 e pre post, sample7b.equal_range 5 = some (some r1, some r2) ∧
      sample7b.lower_bound 5 = some (some r1) ∧ sample7b.upper_bound 5 = some (some r2) ∧
      sample7b.end_ = some (some e) ∧ sample7b.data_nodes ++ [e] = pre ++ r2 :: post ∧
      (∀ a ∈ pre, ∃ kv, sample7b.payload a = some kv ∧ kv.1 ≤ 5) ∧
      (∀ kv, sample7b.payload r2 = some kv → 5 < kv.1) ∧
      (r2 = e ↔ ∀ k2 ∈ sample7b.keys, k2 ≤ 5) ∧
      sample7b.upper_bound_descent 5 = some (some r2) ∧
      sample7b.range (some r1) (some r2) =
        some (sample7b.to_list.filter (fun x => decide (x.1 = 5))) ∧
      (5 ∈ sample7b.keys → ∃ v, sample7b.payload r1 = some (5, v) ∧
        sample7b.to_list.filter (fun x => decide (x.1 = 5)) = [(5, v)] ∧
        map.it_next sample7b (some r1) = some (some r2)) ∧
      (5 ∉ sample7b.keys → r1 = r2 ∧
        sample7b.to_list.filter (fun x => decide (x.1 = 5)) = []) :=
  ⟨reachable_sample7b, by decide, by decide, by decide, by decide,
    equal_range_delimits_key sample7b reachable_sample7b 5⟩


/-- C14: on a reachable state `operator[](k)` returns a reference into the payload of a data
node `it` that holds the key `k`.  If `k` was absent, the node is new, holds the default
value, `size()` has grown by one and the in-order sequence is the old one with
`(k, default)` at its sorted place; if `k` was present, the state is unchanged.  A write of
`v` through the reference replaces the value of that pair and nothing else, and `find(k)`
then returns the node, which holds `(k, v)`. -/
theorem index_returns_reference (m : map K V) (h : Reachable m) (k : K) :
    ∃ m2 it v0, m.index k = some (m2, some it) ∧ Reachable m2 ∧ it ∈ m2.data_nodes ∧
      m2.payload it = some (k, v0) ∧
      (k ∉ m.keys → v0 = default ∧ m2.size = m.size + 1 ∧
        m2.to_list = list_insert m.to_list (k, default)) ∧
      (k ∈ m.keys → m2 = m) ∧
      ∀ v : V, ∃ m3 pre post, map.write_second m2 (some it) v = some m3 ∧
        m3.find k = some (some it) ∧ m3.payload it = some (k, v) ∧
        m2.to_list = pre ++ (k, v0) :: post ∧ m3.to_list = pre ++ (k, v) :: post ∧
        m3.size = m2.size := by
  obtain ⟨T, hI⟩ := h.inv
  have key : ∀ (m2 : map K V) (T2 : tree K V) (it : Nat) (v0 : V), InvT m2 T2 →
      (it, some (k, v0)) ∈ T2.elems →
      ∀ v : V, ∃ m3 pre post, map.write_second m2 (some it) v = some m3 ∧
        m3.find k = some (some it) ∧ m3.payload it = some (k, v) ∧
        m2.to_list = pre ++ (k, v0) :: post ∧ m3.to_list = pre ++ (k, v) :: post ∧
        m3.size = m2.size := by
    intro m2 T2 it v0 i2 hmem v
    obtain ⟨m3, T3, pre, post, e, i3, hT2, hT3, hf, hs⟩ := write_second_spec i2 hmem v
    refine ⟨m3, pre.filterMap Prod.snd, post.filterMap Prod.snd, e, hf,
      i3.1.payload_eq (by rw [hT3]; simp), ?_, ?_, hs⟩
    · rw [i2.1.to_list_eq, tree.data, hT2, List.filterMap_append]; rfl
    · rw [i3.1.to_list_eq, tree.data, hT3, List.filterMap_append]; rfl
  rcases index_spec hI k with ⟨a, v0, hmem, e⟩ | ⟨m2, T2, pre, post, e, e2, i2, hsz, -, hT, hT2,
    hlt, hgt⟩
  · have hk : k ∈ m.keys := by
      rw [hI.1.keys_eq]; exact mem_ekeys.2 ⟨a, v0, hmem⟩
    exact ⟨m, a, v0, e, h, hI.1.mem_data_nodes.2 ⟨_, hmem⟩, hI.1.payload_eq hmem,
      fun hno => absurd hk hno, fun _ => rfl, key m T a v0 hI hmem⟩
  · have hmem : (m.brk, some (k, (default : V))) ∈ T2.elems := by rw [hT2]; simp
    have hno : k ∉ m.keys := by
      rw [hI.1.keys_eq, hT]; exact not_mem_of_split hlt hgt
    refine ⟨m2, m.brk, default, e, Reachable.index h e, i2.1.mem_data_nodes.2 ⟨_, hmem⟩,
      i2.1.payload_eq hmem, fun _ => ⟨rfl, hsz, ?_⟩, fun hk => absurd hk hno,
      key m2 T2 m.brk default i2 hmem⟩
    obtain ⟨m4, it4, b4, T4, e4, -, hl⟩ := insert_to_list hI (k, (default : V))
    rw [e2] at e4
    simp only [Option.some.injEq, Prod.mk.injEq] at e4
    obtain ⟨rfl, -, -⟩ := e4
    exact hl

set_option maxRecDepth 100000 in
theorem index_returns_reference_witness :
    Reachable sample7 ∧ 6 ∉ sample7.keys ∧
    ∃ m2 it v0, sample7.index 6 = some (m2, some it) ∧ Reachable m2 ∧ it ∈ m2.data_nodes ∧
      m2.payload it = some (6, v0) ∧
      (6 ∉ sample7.keys → v0 = default ∧ m2.size = sample7.size + 1 ∧
        m2.to_list = list_insert sample7.to_list (6, default)) ∧
      (6 ∈ sample7.keys → m2 = sample7) ∧
      ∀ v : Nat, ∃ m3 pre post, map.write_second m2 (some it) v = some m3 ∧
        m3.find 6 = some (some it) ∧ m3.payload it = some (6, v) ∧
        m2.to_list = pre ++ (6, v0) :: post ∧ m3.to_list = pre ++ (6, v) :: post ∧
        m3.size = m2.size :=
  ⟨reachable_sample7, by decide, index_returns_reference sample7 reachable_sample7 6⟩
/-- C15: for a reachable state `m`, the copy constructor `map(m)` and the assignment
`m0 = m` to another reachable map `m0` (a map with nodes of its own, which the operations
write, while they only read `m`) return a reachable state whose size and in-order sequence of
pairs are those of `m`, so that the result `== m` holds. -/
theorem copy_equals_source [DecidableEq V] (m m0 : map K V) (h : Reachable m)
    (h0 : Reachable m0) :
    (∃ m2, map.copy_ctor m = some m2 ∧ Reachable m2 ∧ m2.size = m.size ∧
      m2.to_list = m.to_list ∧ m2.op_eq m = some true) ∧
    (∃ m2, m0.assign m = some m2 ∧ Reachable m2 ∧ m2.size = m.size ∧
      m2.to_list = m.to_list ∧ m2.op_eq m = some true) := by
  obtain ⟨⟨m2, e2, r2, l2, s2⟩, hasg⟩ := copy_spec h
  obtain ⟨m3, e3, r3, l3, s3⟩ := hasg m0 h0
  obtain ⟨T, hI⟩ := h.inv
  obtain ⟨T2, hI2⟩ := r2.inv
  obtain ⟨T3, hI3⟩ := r3.inv
  refine ⟨⟨m2, e2, r2, s2, l2, ?_⟩, ⟨m3, e3, r3, s3, l3, ?_⟩⟩
  · rw [op_eq_spec hI2 hI, l2]; simp
  · rw [op_eq_spec hI3 hI, l3]; simp

set_option maxRecDepth 100000 in
theorem copy_equals_source_witness :
    Reachable sample7 ∧ Reachable sample2 ∧
    (map.copy_ctor sample7).map map.to_list = some sample7.to_list ∧
    (sample2.assign sample7).map map.to_list = some sample7.to_list ∧
    ((∃ m2, map.copy_ctor sample7 = some m2 ∧ Reachable m2 ∧ m2.size = sample7.size ∧
      m2.to_list = sample7.to_list ∧ m2.op_eq sample7 = some true) ∧
    (∃ m2, sample2.assign sample7 = some m2 ∧ Reachable m2 ∧ m2.size = sample7.size ∧
      m2.to_list = sample7.to_list ∧ m2.op_eq sample7 = some true)) :=
  ⟨reachable_sample7, reachable_sample2, by decide, by decide,
    copy_equals_source sample7 sample2 reachable_sample7 reachable_sample2⟩


/-- C16: on a reachable state, `erase` of the only element of a one-element map, and
`clear()` on any map, return a reachable state with `size() == 0` and `begin() == end()`
whose tree is the skeleton of two end nodes (a black root without payload, parent and left
child, whose right child is a black childless node without payload) and whose in-order
sequence is empty.  On that state every sequence of calls of `insert`, `erase(key)` and
`clear` returns a state with the same in-order sequence of pairs and the same size as the
same calls on a default-constructed map.  (The addresses of the nodes are fresh ones, so the
states are equal up to the addresses.) -/
theorem erase_last_and_clear_reset (m : map K V) (h : Reachable m) :
    (m.size = 1 → ∀ a ∈ m.data_nodes, ∃ m2, m.erase (some a) = some m2 ∧ Reachable m2 ∧
      m2.is_skeleton ∧ m2.begin = m2.end_ ∧ m2.to_list = [] ∧
      ∀ ops : List (map_op K V), ∃ m0 r r0, map.mk_default less = some m0 ∧
        m2.run_ops ops = some r ∧ m0.run_ops ops = some r0 ∧ r.to_list = r0.to_list ∧
        r.size = r0.size) ∧
    (∃ m2, m.clear = some m2 ∧ Reachable m2 ∧
      m2.is_skeleton ∧ m2.begin = m2.end_ ∧ m2.to_list = [] ∧
      ∀ ops : List (map_op K V), ∃ m0 r r0, map.mk_default less = some m0 ∧
        m2.run_ops ops = some r ∧ m0.run_ops ops = some r0 ∧ r.to_list = r0.to_list ∧
        r.size = r0.size) := by
  obtain ⟨T, hI⟩ := h.inv
  constructor
  · intro hsz a ha
    obtain ⟨x, hx⟩ := hI.1.mem_data_nodes.1 ha
    obtain ⟨m2, T2, pre, post, e, i2, hs2, -, -, -, hsk⟩ := erase_spec hI hx
    obtain ⟨rfl, -⟩ := hsk hsz
    have h0 : m2._sz = 0 := by
      have : m._sz = 1 := hsz
      omega
    obtain ⟨s1, s2, s3, s4⟩ := skeleton_like_default i2 h0
    exact ⟨m2, e, Reachable.erase h ha e, s1, s2, s3, s4⟩
  · obtain ⟨m2, e, i2, -, h0⟩ := clear_inv hI
    obtain ⟨s1, s2, s3, s4⟩ := skeleton_like_default i2 h0
    exact ⟨m2, e, Reachable.clear h e, s1, s2, s3, s4⟩

set_option maxRecDepth 100000 in
theorem erase_last_and_clear_reset_witness :
    Reachable sample1 ∧ sample1.size = 1 ∧ sample1.data_nodes = [2] ∧
    (∃ m2, sample1.erase (some 2) = some m2 ∧ Reachable m2 ∧
      m2.is_skeleton ∧ m2.begin = m2.end_ ∧ m2.to_list = [] ∧
      ∀ ops : List (map_op Nat Nat), ∃ m0 r r0, map.mk_default less = some m0 ∧
        m2.run_ops ops = some r ∧ m0.run_ops ops = some r0 ∧ r.to_list = r0.to_list ∧
        r.size = r0.size) ∧
    (∃ m2, sample1.clear = some m2 ∧ Reachable m2 ∧
      m2.is_skeleton ∧ m2.begin = m2.end_ ∧ m2.to_list = [] ∧
      ∀ ops : List (map_op Nat Nat), ∃ m0 r r0, map.mk_default less = some m0 ∧
        m2.run_ops ops = some r ∧ m0.run_ops ops = some r0 ∧ r.to_list = r0.to_list ∧
        r.size = r0.size) :=
  ⟨reachable_sample1, by decide, by decide,
    (erase_last_and_clear_reset sample1 reachable_sample1).1 (by decide) 2 (by decide),
    (erase_last_and_clear_reset sample1 reachable_sample1).2⟩

/-- C17: on a reachable state `end()` returns a node without payload that is the last node of
the tree in in-order and has no right child (the high end node); when the map is not empty,
`begin()` returns a data node, the first data node in in-order, which holds the minimum key;
when the map is empty, `begin()` returns what `end()` returns. -/
theorem begin_and_end_positions (m : map K V) (h : Reachable m) :
    ∃ hi, m.end_ = some (some hi) ∧ m.payload hi = none ∧ m.nodes.getLast? = some hi ∧
      get_r m (some hi) = some none ∧
      (m.size ≠ 0 → ∃ b kv, m.begin = some (some b) ∧ m.payload b = some kv ∧
        m.data_nodes.head? = some b ∧ m.to_list.head? = some kv ∧ ∀ k ∈ m.keys, kv.1 ≤ k) ∧
      (m.size = 0 → m.begin = m.end_) := by
  obtain ⟨T, hI⟩ := h.inv
  have hR := hI.1
  obtain ⟨hi, init, e1, e2⟩ := end_spec hI
  have hphi : m.payload hi = none := hR.payload_eq (by rw [e2]; simp)
  have hlast : m.nodes.getLast? = some hi := by
    rw [hR.nodes_eq, tree.addrs, e2]; simp
  have hr : get_r m (some hi) = some none := by
    rcases hI.2.2 with ⟨-, a, b, rfl⟩ | ⟨hG, hsz⟩
    · rw [skeleton_elems] at e2
      have e3 : [(a, (none : Option (K × V))), (b, none)] = [(a, none)] ++ [(b, none)] := rfl
      rw [e3] at e2
      have e4 := (List.append_inj' e2 rfl).2
      simp only [List.cons.injEq, Prod.mk.injEq, and_true] at e4
      subst e4
      have hc := Rep.cell (p := [.R a black none .nil]) hR
      rw [get_r_eq hc]; rfl
    · have hsz0 : m._sz ≠ 0 := by
        intro h0
        rw [h0] at hsz
        exact hG.nonempty (List.eq_nil_of_length_eq_zero hsz.symm)
      obtain ⟨lo, hi2, b, e, xb, xe, mid, e3, -, -, -, -, hc, -, -⟩ := end_nodes_spec hI hsz0
      have e4 : ((lo, none) :: mid) ++ [(hi2, none)] = init ++ [(hi, none)] := by
        rw [← e2, e3]; simp
      have e5 := (List.append_inj' e4 rfl).2
      simp only [List.cons.injEq, Prod.mk.injEq, and_true] at e5
      subst e5
      rw [get_r_eq hc]
  refine ⟨hi, e1, hphi, hlast, hr, ?_, fun h0 => begin_empty h0⟩
  intro hsz
  obtain ⟨lo, b, xb, rest, e3, e4⟩ := begin_spec hI hsz
  refine ⟨b, xb, e3, hR.payload_eq (by rw [e4]; simp), ?_, ?_, ?_⟩
  · rw [hR.data_nodes_eq, e4]; simp
  · rw [hR.to_list_eq, tree.data, e4]; simp
  · have hs := hI.sorted
    rw [hR.keys_eq, e4]
    rw [e4] at hs
    simp only [ekeys_cons_none, ekeys_cons_some, List.pairwise_cons] at hs
    intro k hk
    simp only [ekeys_cons_none, ekeys_cons_some, List.mem_cons] at hk
    rcases hk with rfl | hk
    · exact le_refl _
    · exact le_of_lt (hs.1 k hk)

set_option maxRecDepth 100000 in
theorem begin_and_end_positions_witness :
    Reachable sample7 ∧ sample7.size = 7 ∧
    ∃ hi, sample7.end_ = some (some hi) ∧ sample7.payload hi = none ∧
      sample7.nodes.getLast? = some hi ∧ get_r sample7 (some hi) = some none ∧
      (sample7.size ≠ 0 → ∃ b kv, sample7.begin = some (some b) ∧
        sample7.payload b = some kv ∧ sample7.data_nodes.head? = some b ∧
        sample7.to_list.head? = some kv ∧ ∀ k ∈ sample7.keys, kv.1 ≤ k) ∧
      (sample7.size = 0 → sample7.begin = sample7.end_) :=
  ⟨reachable_sample7, by decide, begin_and_end_positions sample7 reachable_sample7⟩

/-- C18: on a reachable state that is not empty, the nodes of the tree in in-order are the
low end node, the data nodes and the high end node; the two end nodes are the only nodes
without payload, both are black and have no children; the low end node is the left child of
the first data node (the one with the minimum key), the high end node is the right child of
the last data node (the one with the maximum key).  All operations that reach a state keep
this, since it holds in every reachable state. -/
theorem two_childless_end_nodes (m : map K V) (h : Reachable m) (hsz : m.size ≠ 0) :
    ∃ (lo hi b e : Nat),
      m.nodes = lo :: (m.data_nodes ++ [hi]) ∧
      m.nodes.filter (fun a => (m.payload a).isNone) = [lo, hi] ∧
      m.data_nodes.head? = some b ∧ m.data_nodes.getLast? = some e ∧
      m.mem lo = some { color := black, val := none, l := none, r := none, parent := some b } ∧
      m.mem hi = some { color := black, val := none, l := none, r := none, parent := some e } ∧
      get_l m (some b) = some (some lo) ∧ get_r m (some e) = some (some hi) ∧
      (∀ k ∈ m.keys, (∃ v, m.payload b = some (k, v)) ∨ ∃ kb v, m.payload b = some (kb, v) ∧ kb < k) ∧
      (∀ k ∈ m.keys, (∃ v, m.payload e = some (k, v)) ∨ ∃ ke v, m.payload e = some (ke, v) ∧ k < ke) := by
  obtain ⟨T, hI⟩ := h.inv
  have hR := hI.1
  obtain ⟨lo, hi, b, e, xb, xe, mid, e3, hm, hb, he, hclo, hchi, hl, hr⟩ :=
    end_nodes_spec hI hsz
  have hdat : ∀ y ∈ mid, y.2.isSome = true := by
    intro y hy
    have := hm y hy
    cases h2 : y.2 with
    | none => exact absurd h2 this
    | some x => rfl
  have hd : m.data_nodes = mid.map Prod.fst := by
    rw [hR.data_nodes_eq, e3]
    simp only [List.filter_cons, Option.isSome_none, Bool.false_eq_true, if_false,
      List.filter_append, List.filter_nil, List.append_nil]
    congr 1
    rw [List.filter_eq_self]
    exact hdat
  have hpay : ∀ y ∈ T.elems, m.payload y.1 = y.2 := fun y hy => hR.payload_eq hy
  refine ⟨lo, hi, b, e, ?_, ?_, ?_, ?_, hclo, hchi, hl, hr, ?_, ?_⟩
  · rw [hR.nodes_eq, tree.addrs, e3, hd]; simp
  · rw [hR.nodes_eq, tree.addrs, List.filter_map]
    have : T.elems.filter ((fun a => (m.payload a).isNone) ∘ Prod.fst) =
        T.elems.filter (fun y => y.2.isNone) := by
      apply List.filter_congr
      intro y hy
      simp only [Function.comp, hpay y hy]
    rw [this, e3]
    simp only [List.filter_cons, Option.isNone_none, if_true, List.filter_append,
      List.filter_nil, List.map_cons, List.map_append, List.map_nil]
    have h0 : mid.filter (fun y => y.2.isNone) = [] := by
      rw [List.filter_eq_nil_iff]
      intro y hy
      have := hdat y hy
      cases h2 : y.2 with
      | none => rw [h2] at this; simp at this
      | some x => simp
    rw [h0]; rfl
  · rw [hd, List.head?_map, hb]; rfl
  · rw [hd, List.getLast?_map, he]; rfl
  · have hs := hI.sorted
    obtain ⟨mid2, rfl⟩ : ∃ mid2, mid = (b, some xb) :: mid2 := by
      cases mid with
      | nil => simp at hb
      | cons y mid2 =>
        simp only [List.head?_cons, Option.some.injEq] at hb
        exact ⟨mid2, by rw [hb]⟩
    have hpb : m.payload b = some xb := hR.payload_eq (by rw [e3]; simp)
    rw [e3] at hs
    simp only [ekeys_cons_none, List.cons_append, ekeys_cons_some, List.pairwise_cons] at hs
    intro k hk
    rw [hR.keys_eq, e3] at hk
    simp only [ekeys_cons_none, List.cons_append, ekeys_cons_some, List.mem_cons] at hk
    rcases hk with rfl | hk
    · exact Or.inl ⟨xb.2, hpb⟩
    · exact Or.inr ⟨xb.1, xb.2, hpb, hs.1 k hk⟩
  · have hs := hI.sorted
    obtain ⟨init, rfl⟩ : ∃ init, mid = init ++ [(e, some xe)] := by
      rcases List.eq_nil_or_concat mid with h0 | ⟨init, y, hy⟩
      · rw [h0] at he; simp at he
      · rw [List.concat_eq_append] at hy
        rw [hy] at he
        simp at he
        exact ⟨init, by rw [hy, he]⟩
    have hpe : m.payload e = some xe := hR.payload_eq (by rw [e3]; simp)
    have hk0 : ekeys ((lo, (none : Option (K × V))) :: (init ++ [(e, some xe)] ++ [(hi, none)])) =
        ekeys init ++ [xe.1] := by
      simp [ekeys_append, ekeys_cons_none, ekeys_cons_some, ekeys_nil]
    rw [e3, hk0] at hs
    rw [List.pairwise_append] at hs
    intro k hk
    rw [hR.keys_eq, e3, hk0] at hk
    simp only [List.mem_append, List.mem_singleton] at hk
    rcases hk with hk | rfl
    · exact Or.inr ⟨xe.1, xe.2, hpe, hs.2.2 k hk xe.1 (by simp)⟩
    · exact Or.inl ⟨xe.2, hpe⟩

set_option maxRecDepth 100000 in
theorem two_childless_end_nodes_witness :
    Reachable sample7 ∧ sample7.size ≠ 0 ∧
    ∃ (lo hi b e : Nat),
      sample7.nodes = lo :: (sample7.data_nodes ++ [hi]) ∧
      sample7.nodes.filter (fun a => (sample7.payload a).isNone) = [lo, hi] ∧
      sample7.data_nodes.head? = some b ∧ sample7.data_nodes.getLast? = some e ∧
      sample7.mem lo =
        some { color := black, val := none, l := none, r := none, parent := some b } ∧
      sample7.mem hi =
        some { color := black, val := none, l := none, r := none, parent := some e } ∧
      get_l sample7 (some b) = some (some lo) ∧ get_r sample7 (some e) = some (some hi) ∧
      (∀ k ∈ sample7.keys, (∃ v, sample7.payload b = some (k, v)) ∨
        ∃ kb v, sample7.payload b = some (kb, v) ∧ kb < k) ∧
      (∀ k ∈ sample7.keys, (∃ v, sample7.payload e = some (k, v)) ∨
        ∃ ke v, sample7.payload e = some (ke, v) ∧ k < ke) :=
  ⟨reachable_sample7, by decide, two_childless_end_nodes sample7 reachable_sample7 (by decide)⟩

/-- C19: on a reachable state with `n` elements, the `i`-th increment from `begin()` arrives
at the `i`-th data node of the in-order sequence for `i < n` and at `end()` for `i = n`; the
data nodes are distinct and their keys strictly increasing; the decrement undoes the increment
at every data node, and the decrement of `end()` is the last data node. -/
theorem increments_visit_in_order (m : map K V) (h : Reachable m) :
    ∃ b e, m.begin = some (some b) ∧ m.end_ = some (some e) ∧
      m.data_nodes.length = m.size ∧
      (∀ i a, (m.data_nodes ++ [e])[i]? = some a →
        map.it_advance m i (some b) = some (some a)) ∧
      map.it_advance m m.size (some b) = some (some e) ∧
      m.data_nodes.Nodup ∧ (m.data_nodes.filterMap m.payload = m.to_list) ∧
      m.keys.Pairwise (· < ·) ∧
      (∀ a ∈ m.data_nodes, ∃ nx, map.it_next m (some a) = some (some nx) ∧
        map.it_prev m (some nx) = some (some a)) ∧
      (∀ z, m.data_nodes.getLast? = some z → map.it_prev m (some e) = some (some z)) := by
  obtain ⟨T, hI⟩ := h.inv
  obtain ⟨lo, hi, b, rest, hn, e1, e2, e3, -, -⟩ := nodes_frame hI
  have hT : T.addrs = [lo] ++ b :: rest := by
    rw [← hI.1.nodes_eq, hn, e3]; rfl
  have hadv : ∀ i a, (m.data_nodes ++ [hi])[i]? = some a →
      map.it_advance m i (some b) = some (some a) := by
    intro i a ha
    rw [e3] at ha
    exact it_advance_spec hI.1 i [lo] rest b a hT ha
  have hlen : m.data_nodes.length = m.size := by
    rw [map.size, hI.size_eq, hI.1.data_nodes_eq, List.length_map, tree.data]
    generalize T.elems = es
    induction es with
    | nil => rfl
    | cons e es ih =>
      obtain ⟨a, v⟩ := e
      cases v <;> simp [List.filter_cons, ih]
  have hnd : (lo :: (m.data_nodes ++ [hi])).Nodup := by
    rw [← hn, hI.1.nodes_eq]; exact hI.1.nodup
  refine ⟨b, hi, e2, e1, hlen, hadv, ?_, ?_, ?_, ?_, ?_, ?_⟩
  · apply hadv
    rw [← hlen]
    simp
  · exact ((List.nodup_cons.1 hnd).2.of_append_left)
  · rw [map.to_list, hn, map.data_nodes, hn]
    simp only [List.filterMap_cons, List.filterMap_append, List.filter_cons, List.filter_append,
      List.filterMap_nil, List.filter_nil]
    rcases nodes_frame hI with ⟨lo2, hi2, -, -, hn2, -, -, -, hphi, hplo⟩
    rw [hn] at hn2
    simp only [List.cons.injEq] at hn2
    obtain ⟨rfl, hn3⟩ := hn2
    have := (List.append_inj' hn3 rfl).2
    simp only [List.cons.injEq, and_true] at this
    subst this
    simp only [hphi, hplo, Option.isSome_none, Bool.false_eq_true, if_false, List.append_nil]
  · rw [hI.1.keys_eq]; exact hI.sorted
  · intro a ha
    obtain ⟨s1, s2, hs⟩ := List.append_of_mem ha
    have hsplit : ∃ nx tl, s2 ++ [hi] = nx :: tl := by
      cases s2 with
      | nil => exact ⟨hi, [], rfl⟩
      | cons x s3 => exact ⟨x, _, rfl⟩
    obtain ⟨nx, tl, htl⟩ := hsplit
    have hT2 : T.addrs = (lo :: s1) ++ a :: nx :: tl := by
      rw [← hI.1.nodes_eq, hn, hs]
      simp only [List.cons_append, List.append_assoc, List.cons.injEq, true_and]
      rw [htl]
    exact ⟨nx, it_next_spec hI.1 hT2, it_prev_spec hI.1 hT2⟩
  · intro z hz
    obtain ⟨s1, hs⟩ : ∃ s1, m.data_nodes = s1 ++ [z] := by
      rcases List.eq_nil_or_concat m.data_nodes with h0 | ⟨s1, x, h0⟩
      · rw [h0] at hz; simp at hz
      · rw [h0] at hz
        rw [List.concat_eq_append, List.getLast?_concat] at hz
        simp only [Option.some.injEq] at hz
        subst hz
        exact ⟨s1, by rw [h0]; simp⟩
    have hT2 : T.addrs = (lo :: s1) ++ z :: hi :: [] := by
      rw [← hI.1.nodes_eq, hn, hs]; simp
    exact it_prev_spec hI.1 hT2

set_option maxRecDepth 100000 in
theorem increments_visit_in_order_witness :
    Reachable sample7 ∧ sample7.begin = some (some 5) ∧
    map.it_advance sample7 7 (some 5) = some (some 1) ∧
    ∃ b e, sample7.begin = some (some b) ∧ sample7.end_ = some (some e) ∧
      sample7.data_nodes.length = sample7.size ∧
      (∀ i a, (sample7.data_nodes ++ [e])[i]? = some a →
        map.it_advance sample7 i (some b) = some (some a)) ∧
      map.it_advance sample7 sample7.size (some b) = some (some e) ∧
      sample7.data_nodes.Nodup ∧
      (sample7.data_nodes.filterMap sample7.payload = sample7.to_list) ∧
      sample7.keys.Pairwise (· < ·) ∧
      (∀ a ∈ sample7.data_nodes, ∃ nx, map.it_next sample7 (some a) = some (some nx) ∧
        map.it_prev sample7 (some nx) = some (some a)) ∧
      (∀ z, sample7.data_nodes.getLast? = some z →
        map.it_prev sample7 (some e) = some (some z)) :=
  ⟨reachable_sample7, by decide, by decide, increments_visit_in_order sample7 reachable_sample7⟩
/-- C20: on a reachable state the loop from `rbegin()` to `rend()` with `operator++` and
`operator*` of `reverse_iterator` yields the in-order sequence of pairs reversed; after as
many increments as there are pairs behind a pair `x`, the reverse iterator is not `rend()`
and its dereference is defined and returns `x`, the payload of the data node just before the
wrapped base iterator; `rend()` is reached after `size()` increments; and when the map is not
empty `*rbegin()` is the pair with the maximum key. -/
theorem reverse_traversal_reversed (m : map K V) (h : Reachable m) :
    ∃ rb re, m.rbegin = some rb ∧ m.rend = some re ∧
      m.rev_list = some m.to_list.reverse ∧
      map.rev_advance m m.size rb = some re ∧
      (∀ xs x ys, m.to_list = xs ++ x :: ys →
        ∃ r p, map.rev_advance m ys.length rb = some r ∧ r._base ≠ re._base ∧
          map.it_prev m r._base = some (some p) ∧ m.payload p = some x ∧
          map.rev_deref m r = some x) ∧
      (m.size ≠ 0 → ∃ x, map.rev_deref m rb = some x ∧ m.to_list.getLast? = some x ∧
        ∀ k ∈ m.keys, k ≤ x.1) := by
  obtain ⟨T, hI⟩ := h.inv
  obtain ⟨lo, hi, mid, hT, hmid, hend⟩ := hI.elems_frame
  obtain ⟨b, hb, hrb, hre, hl, hadv, hsplit⟩ := rev_frame hI hT hmid hend
  refine ⟨_, _, hrb, hre, hl, hadv, hsplit, ?_⟩
  intro hsz
  have hne : m.to_list ≠ [] := by
    intro h0
    apply hsz
    rw [hI.size_to_list, h0]; rfl
  rcases List.eq_nil_or_concat m.to_list with h0 | ⟨xs, x, h0⟩
  · exact absurd h0 hne
  · rw [List.concat_eq_append] at h0
    obtain ⟨r, p, h1, -, -, -, h5⟩ := hsplit xs x [] h0
    simp only [List.length_nil, map.rev_advance, Option.some.injEq] at h1
    subst h1
    refine ⟨x, h5, by rw [h0]; simp, ?_⟩
    have hs := hI.sorted
    rw [← hI.1.keys_eq, map.keys, h0, List.map_append, List.pairwise_append] at hs
    intro k hk
    rw [map.keys, h0, List.map_append, List.mem_append] at hk
    rcases hk with hk | hk
    · exact le_of_lt (hs.2.2 k hk x.1 (by simp))
    · simp only [List.map_cons, List.map_nil, List.mem_singleton] at hk
      rw [hk]

set_option maxRecDepth 100000 in
theorem reverse_traversal_reversed_witness :
    Reachable sample7 ∧
    sample7.rev_list =
      some [(9, 90), (8, 80), (7, 70), (5, 50), (4, 40), (3, 30), (1, 10)] ∧
    ∃ rb re, sample7.rbegin = some rb ∧ sample7.rend = some re ∧
      sample7.rev_list = some sample7.to_list.reverse ∧
      map.rev_advance sample7 sample7.size rb = some re ∧
      (∀ xs x ys, sample7.to_list = xs ++ x :: ys →
        ∃ r p, map.rev_advance sample7 ys.length rb = some r ∧ r._base ≠ re._base ∧
          map.it_prev sample7 r._base = some (some p) ∧ sample7.payload p = some x ∧
          map.rev_deref sample7 r = some x) ∧
      (sample7.size ≠ 0 → ∃ x, map.rev_deref sample7 rb = some x ∧
        sample7.to_list.getLast? = some x ∧ ∀ k ∈ sample7.keys, k ≤ x.1) :=
  ⟨reachable_sample7, by decide, reverse_traversal_reversed sample7 reachable_sample7⟩


/-- C21: on a reachable state, for a range `mid` of nodes of the in-order sequence that
starts at `first` and ends before `last` (a data node or the node of `end()`),
`erase(first, last)` returns, the in-order sequence of pairs afterwards is the old one without
the pairs of `mid`, and `size()` has decreased by the length of `mid`; `erase(begin(), end())`
returns and leaves an empty map with `begin() == end()`. -/
theorem erase_range_removes_interval (m : map K V) (h : Reachable m) (A mid B : List Nat)
    (last first : Nat) (rest : List Nat) (hn : m.nodes = A ++ mid ++ last :: B) (hA : A ≠ [])
    (hfirst : mid ++ [last] = first :: rest) :
    (∃ m2, m.erase_range (some first) (some last) = some m2 ∧
      m.to_list = (A ++ mid ++ last :: B).filterMap m.payload ∧
      m2.to_list = (A ++ last :: B).filterMap m.payload ∧ m2.size + mid.length = m.size) ∧
    (∃ b e m3, m.begin = some b ∧ m.end_ = some e ∧ m.erase_range b e = some m3 ∧
      m3.size = 0 ∧ m3.to_list = [] ∧ m3.begin = m3.end_) := by
  obtain ⟨T, hI⟩ := h.inv
  constructor
  · obtain ⟨m2, T2, e, -, h1, h2⟩ := erase_range_spec hI hn hA hfirst
    exact ⟨m2, e, by rw [← hn]; rfl, h1, h2⟩
  · obtain ⟨b, e, m3, T3, e1, e2, e3, -, h1, h2, h3⟩ := erase_all_spec hI
    exact ⟨b, e, m3, e1, e2, e3, h1, h2, h3⟩

set_option maxRecDepth 100000 in
theorem erase_range_removes_interval_witness :
    Reachable sample7 ∧ sample7.nodes = [0, 5] ++ [3, 6, 2, 7] ++ 4 :: [8, 1] ∧
    (sample7.erase_range (some 3) (some 4)).map (fun s => s.to_list) =
      some [(1, 10), (8, 80), (9, 90)] ∧
    ((∃ m2, sample7.erase_range (some 3) (some 4) = some m2 ∧
      sample7.to_list = ([0, 5] ++ [3, 6, 2, 7] ++ 4 :: [8, 1]).filterMap sample7.payload ∧
      m2.to_list = ([0, 5] ++ 4 :: [8, 1]).filterMap sample7.payload ∧
      m2.size + [3, 6, 2, 7].length = sample7.size) ∧
    (∃ b e m3, sample7.begin = some b ∧ sample7.end_ = some e ∧
      sample7.erase_range b e = some m3 ∧
      m3.size = 0 ∧ m3.to_list = [] ∧ m3.begin = m3.end_)) :=
  ⟨reachable_sample7, by decide, by decide,
    erase_range_removes_interval sample7 reachable_sample7 [0, 5] [3, 6, 2, 7] [8, 1] 4 3
      [6, 2, 7, 4] (by decide) (by decide) (by decide)⟩

/-- C22: in every reachable state with `n` data nodes the height `h` of the tree, counted in
data nodes on the longest downward path, satisfies `2 ^ h ≤ (n + 1) ^ 2`; the insertions of
`5, 3, 8, 1, 4, 7, 9` give the in-order sequence `1, 3, 4, 5, 7, 8, 9` and a height of at
most `6`. -/
theorem height_is_logarithmic (m : map K V) (h : Reachable m) :
    2 ^ m.height ≤ (m.size + 1) ^ 2 ∧ m.size = m.data_nodes.length ∧
    ∃ s : map Nat Nat,
      map.build less [(5, 50), (3, 30), (8, 80), (1, 10), (4, 40), (7, 70), (9, 90)] = some s ∧
      s.keys = [1, 3, 4, 5, 7, 8, 9] ∧ s.height ≤ 6 := by
  obtain ⟨T, hI⟩ := h.inv
  refine ⟨hI.height_bound, ?_, sample7, by rfl, by decide, by decide⟩
  rw [map.size, hI.size_eq, hI.1.data_nodes_eq, List.length_map, tree.data]
  generalize T.elems = es
  induction es with
  | nil => rfl
  | cons e es ih =>
    obtain ⟨a, v⟩ := e
    cases v <;> simp [List.filter_cons, ih]

set_option maxRecDepth 100000 in
theorem height_is_logarithmic_witness :
    Reachable sample7 ∧ sample7.height = 3 ∧ sample7.size = 7 ∧
    (2 ^ sample7.height ≤ (sample7.size + 1) ^ 2 ∧
      sample7.size = sample7.data_nodes.length ∧
      ∃ s : map Nat Nat,
        map.build less [(5, 50), (3, 30), (8, 80), (1, 10), (4, 40), (7, 70), (9, 90)] =
          some s ∧
        s.keys = [1, 3, 4, 5, 7, 8, 9] ∧ s.height ≤ 6) :=
  ⟨reachable_sample7, by decide, by decide, height_is_logarithmic sample7 reachable_sample7⟩
/-- C23: for reachable states `a` and `b`, `a == b` is defined and is true exactly when the
in-order sequences of pairs of the two maps are equal, that is when the sizes are equal and the
pairs at every index are equal; `a != b` is the negation of `a == b`. -/
theorem map_equality_elementwise [DecidableEq V] (a b : map K V) (ha : Reachable a)
    (hb : Reachable b) :
    a.op_eq b = some (decide (a.to_list = b.to_list)) ∧
    (a.op_eq b = some true ↔ a.size = b.size ∧ ∀ i : Nat, a.to_list[i]? = b.to_list[i]?) ∧
    a.op_ne b = some (!decide (a.to_list = b.to_list)) ∧
    (a.op_ne b = some true ↔ a.op_eq b = some false) := by
  obtain ⟨Ta, hA⟩ := ha.inv
  obtain ⟨Tb, hB⟩ := hb.inv
  have e := op_eq_spec hA hB
  refine ⟨e, ?_, by simp [map.op_ne, e], by simp [map.op_ne, e]⟩
  rw [e]
  simp only [Option.some.injEq, decide_eq_true_eq]
  constructor
  · intro h
    exact ⟨by rw [hA.size_to_list, hB.size_to_list, h], fun i => by rw [h]⟩
  · rintro ⟨-, h⟩
    exact List.ext_getElem? h

set_option maxRecDepth 100000 in
theorem map_equality_elementwise_witness :
    Reachable sample7 ∧ Reachable sample7b ∧ sample7.nodes ≠ sample7b.nodes ∧
    sample7.op_eq sample7b = some true ∧ sample7.op_eq sample2 = some false ∧
    (sample7.op_eq sample7b = some (decide (sample7.to_list = sample7b.to_list)) ∧
    (sample7.op_eq sample7b = some true ↔
      sample7.size = sample7b.size ∧ ∀ i : Nat, sample7.to_list[i]? = sample7b.to_list[i]?) ∧
    sample7.op_ne sample7b = some (!decide (sample7.to_list = sample7b.to_list)) ∧
    (sample7.op_ne sample7b = some true ↔ sample7.op_eq sample7b = some false)) :=
  ⟨reachable_sample7, reachable_sample7b, by decide, by decide, by decide,
    map_equality_elementwise sample7 sample7b reachable_sample7 reachable_sample7b⟩

/-- C24: for reachable states `a` and `b` over linearly ordered keys and values, `a < b` is
defined and is the lexicographic comparison of the in-order sequences of pairs (the pairs
ordered lexicographically); `a > b` is `b < a`, `a <= b` is the negation of `b < a`, `a >= b`
is the negation of `a < b`, and exactly one of `a < b`, `a == b`, `a > b` is true. -/
theorem ordering_is_lexicographic [LinearOrder V] (a b : map K V) (ha : Reachable a)
    (hb : Reachable b) :
    a.op_lt b = some (lex_lt a.to_list b.to_list) ∧
    (a.op_lt b = some true ↔ List.Lex (Prod.Lex (· < ·) (· < ·)) a.to_list b.to_list) ∧
    a.op_gt b = b.op_lt a ∧
    a.op_le b = (b.op_lt a).map (fun r => !r) ∧
    a.op_ge b = (a.op_lt b).map (fun r => !r) ∧
    ∃ lt eq gt, a.op_lt b = some lt ∧ a.op_eq b = some eq ∧ a.op_gt b = some gt ∧
      ((lt = true ∧ eq = false ∧ gt = false) ∨ (lt = false ∧ eq = true ∧ gt = false) ∨
        (lt = false ∧ eq = false ∧ gt = true)) := by
  obtain ⟨Ta, hA⟩ := ha.inv
  obtain ⟨Tb, hB⟩ := hb.inv
  have e1 := op_lt_spec hA hB
  have e2 := op_lt_spec hB hA
  have e3 := op_eq_spec hA hB
  have tri : (lex_lt a.to_list b.to_list = true ∧ a.to_list ≠ b.to_list ∧
        lex_lt b.to_list a.to_list = false) ∨
      (lex_lt a.to_list b.to_list = false ∧ a.to_list = b.to_list ∧
        lex_lt b.to_list a.to_list = false) ∨
      (lex_lt a.to_list b.to_list = false ∧ a.to_list ≠ b.to_list ∧
        lex_lt b.to_list a.to_list = true) := by
    cases h1 : lex_lt a.to_list b.to_list with
    | true =>
      refine Or.inl ⟨rfl, ?_, lex_lt_asymm _ _ h1⟩
      intro h
      rw [h, lex_lt_irrefl] at h1
      cases h1
    | false =>
      cases h2 : lex_lt b.to_list a.to_list with
      | true =>
        refine Or.inr (Or.inr ⟨rfl, ?_, rfl⟩)
        intro h
        rw [h, lex_lt_irrefl] at h2
        cases h2
      | false => exact Or.inr (Or.inl ⟨rfl, lex_lt_total _ _ h1 h2, rfl⟩)
  have e4 : a.op_gt b = some (lex_lt b.to_list a.to_list) := by
    rcases tri with ⟨h1, h2, h3⟩ | ⟨h1, h2, h3⟩ | ⟨h1, h2, h3⟩ <;>
      simp [map.op_gt, e1, e3, h1, h2, h3, lex_lt_irrefl]
  refine ⟨e1, ?_, by rw [e4, e2], ?_, ?_, _, _, _, e1, e3, e4, ?_⟩
  · rw [e1, ← lex_lt_iff]
    simp
  · rcases tri with ⟨h1, h2, h3⟩ | ⟨h1, h2, h3⟩ | ⟨h1, h2, h3⟩ <;>
      simp [map.op_le, e1, e2, e3, h1, h2, h3, lex_lt_irrefl]
  · rcases tri with ⟨h1, h2, h3⟩ | ⟨h1, h2, h3⟩ | ⟨h1, h2, h3⟩ <;>
      simp [map.op_ge, e1, e2, e3, h1, h2, h3, lex_lt_irrefl]
  · rcases tri with ⟨h1, h2, h3⟩ | ⟨h1, h2, h3⟩ | ⟨h1, h2, h3⟩ <;>
      simp [h1, h2, h3, lex_lt_irrefl]

set_option maxRecDepth 100000 in
theorem ordering_is_lexicographic_witness :
    Reachable sample7b ∧ Reachable sample2 ∧
    sample7b.op_lt sample2 = some true ∧ sample2.op_lt sample7b = some false ∧
    sample2.op_gt sample7b = some true ∧ sample7b.op_le sample2 = some true ∧
    sample7b.op_ge sample2 = some false ∧
    (sample7b.op_lt sample2 = some (lex_lt sample7b.to_list sample2.to_list) ∧
    (sample7b.op_lt sample2 = some true ↔
      List.Lex (Prod.Lex (· < ·) (· < ·)) sample7b.to_list sample2.to_list) ∧
    sample7b.op_gt sample2 = sample2.op_lt sample7b ∧
    sample7b.op_le sample2 = (sample2.op_lt sample7b).map (fun r => !r) ∧
    sample7b.op_ge sample2 = (sample7b.op_lt sample2).map (fun r => !r) ∧
    ∃ lt eq gt, sample7b.op_lt sample2 = some lt ∧ sample7b.op_eq sample2 = some eq ∧
      sample7b.op_gt sample2 = some gt ∧
      ((lt = true ∧ eq = false ∧ gt = false) ∨ (lt = false ∧ eq = true ∧ gt = false) ∨
        (lt = false ∧ eq = false ∧ gt = true))) :=
  ⟨reachable_sample7b, reachable_sample2, by decide, by decide, by decide, by decide,
    by decide,
    ordering_is_lexicographic sample7b sample2 reachable_sample7b reachable_sample2⟩


/-- C25: for two maps `a` and `b` in one free store, after `a.swap(b)` the size, the nodes
and the in-order sequence of pairs of `a` are those that `b` had before, and those of `b` are
those that `a` had; the free store is untouched, so no node is copied, created or deleted;
a second `a.swap(b)` restores the pair of maps.  This holds for every pair of states, the
reachable ones included. -/
theorem swap_exchanges_contents (w : map_pair K V) :
    w.swap.fst.size = w.snd.size ∧ w.swap.snd.size = w.fst.size ∧
    w.swap.fst.to_list = w.snd.to_list ∧ w.swap.snd.to_list = w.fst.to_list ∧
    w.swap.fst.nodes = w.snd.nodes ∧ w.swap.snd.nodes = w.fst.nodes ∧
    w.swap.fst._root = w.snd._root ∧ w.swap.snd._root = w.fst._root ∧
    w.swap.mem = w.mem ∧ w.swap.brk = w.brk ∧ w.swap.swap = w :=
  ⟨rfl, rfl, rfl, rfl, rfl, rfl, rfl, rfl, rfl, rfl, rfl⟩

/-- C26, as the code behaves: when `erase(pos)` is applied to a data node `p` with two
children in a map of at least two elements and relocates it by `_swap_nodes` with the
neighbour `t`, the payloads are not exchanged: after the erase the physical node `t` is still
a data node of the map and holds the pair it held before, and the physical node `p` is no
longer a node of the tree. -/
theorem erase_keeps_neighbour_payload (m : map K V) (h : Reachable m) (hsz : 2 ≤ m.size)
    (p : Nat) (n : node_type K V) (hn : m.mem p = some n) (hp : p ∈ m.data_nodes)
    (hl : n.l ≠ none) (hr : n.r ≠ none) (t : Nat)
    (ht : map.erase_neighbour m (some p) = some (some t)) :
    ∃ m2, m.erase (some p) = some m2 ∧ t ∈ m.data_nodes ∧ t ∈ m2.data_nodes ∧
      m2.payload t = m.payload t ∧ p ∉ m2.nodes := by
  obtain ⟨T, hI⟩ := h.inv
  obtain ⟨t2, m1, T1, q, e1, htd, hne, -⟩ := swap_nodes_spec hI hsz hn hp hl hr
  rw [ht] at e1
  simp only [Option.some.injEq] at e1
  subst e1
  obtain ⟨x, hx⟩ := hI.1.mem_data_nodes.1 hp
  obtain ⟨xt, hxt⟩ := hI.1.mem_data_nodes.1 htd
  obtain ⟨m2, T2, pre, post, e, i2, -, hT, -, h2, -⟩ := erase_spec hI hx
  obtain ⟨hT2, -⟩ := h2 hsz
  have hmem : (t, some xt) ∈ T2.elems := by
    rw [hT] at hxt
    rw [hT2]
    simp only [List.mem_append, List.mem_cons, Prod.mk.injEq] at hxt ⊢
    rcases hxt with h1 | ⟨h1, -⟩ | h1
    · exact Or.inl h1
    · exact absurd h1 hne
    · exact Or.inr h1
  refine ⟨m2, e, htd, i2.1.mem_data_nodes.2 ⟨_, hmem⟩, ?_, ?_⟩
  · rw [i2.1.payload_eq hmem, hI.1.payload_eq hxt]
  · rw [i2.1.nodes_eq, tree.addrs, hT2]
    have hn := hI.1.nodup
    rw [tree.addrs, hT] at hn
    simp only [List.map_append, List.map_cons, List.nodup_append, List.nodup_cons,
      List.Disjoint, List.mem_cons] at hn
    simp only [List.map_append, List.mem_append]
    rintro (h1 | h1)
    · exact hn.2.2 h1 (Or.inl rfl)
    · exact hn.2.1.1 h1

set_option maxRecDepth 100000 in
theorem erase_keeps_neighbour_payload_witness :
    Reachable sample7 ∧ 2 ≤ sample7.size ∧
    sample7.mem 2 =
      some { color := black, val := some (5, 50), l := some 3, r := some 4, parent := none } ∧
    2 ∈ sample7.data_nodes ∧ map.erase_neighbour sample7 (some 2) = some (some 7) ∧
    ∃ m2, sample7.erase (some 2) = some m2 ∧ 7 ∈ sample7.data_nodes ∧ 7 ∈ m2.data_nodes ∧
      m2.payload 7 = sample7.payload 7 ∧ 2 ∉ m2.nodes :=
  ⟨reachable_sample7, by decide, by rfl, by decide, by decide,
    erase_keeps_neighbour_payload sample7 reachable_sample7 (by decide) 2 _ (by rfl)
      (by decide) (by simp) (by simp) 7 (by decide)⟩

set_option maxRecDepth 100000 in
/-- C26, counterexample to the sentence of the specification: in the state reached by the
insertions of `5, 3, 8, 1, 4, 7, 9`, the node of key `5` (address `2`) has two children and
`erase` relocates it with its neighbour, the node of key `7` (address `7`); after the erase
the physical node at address `7` holds `(7, 70)` as before, not the other key. -/
theorem relocated_neighbour_holds_same_key :
    (sample7.mem 2).map (fun n => (n.val, n.l, n.r)) = some (some (5, 50), some 3, some 4) ∧
    map.erase_neighbour sample7 (some 2) = some (some 7) ∧
    sample7.payload 7 = some (7, 70) ∧
    (sample7.erase (some 2)).map (fun m2 => (m2.payload 7, m2.payload 2, m2.keys)) =
      some (some (7, 70), none, [1, 3, 4, 7, 8, 9]) := by
  decide

/-- C27: on every reachable state `insert` and `erase` return: the descent of `insert_body`,
the loop of `_insert_fix` and the recursion of `fixDoubleBlack` end within the number of steps
that the number of allocated nodes bounds (the fuel of the model), for every pair to insert
and every data node to erase. -/
theorem insert_and_erase_terminate (m : map K V) (h : Reachable m) :
    (∀ x : K × V, ∃ m2 it b, m.insert x = some (m2, some it, b) ∧ Reachable m2) ∧
    (∀ a ∈ m.data_nodes, ∃ m2, m.erase (some a) = some m2 ∧ Reachable m2) := by
  obtain ⟨T, hI⟩ := h.inv
  constructor
  · intro x
    rcases insert_spec hI x with ⟨a, w, -, e⟩ | ⟨m2, T2, pre, post, e, -⟩
    · exact ⟨m, a, false, e, h⟩
    · exact ⟨m2, m.brk, true, e, Reachable.insert h e⟩
  · intro a ha
    obtain ⟨x, hx⟩ := hI.1.mem_data_nodes.1 ha
    obtain ⟨m2, T2, pre, post, e, -⟩ := erase_spec hI hx
    exact ⟨m2, e, Reachable.erase h ha e⟩

set_option maxRecDepth 100000 in
theorem insert_and_erase_terminate_witness :
    Reachable sample7 ∧ sample7.data_nodes = [5, 3, 6, 2, 7, 4, 8] ∧
    ((∀ x : Nat × Nat, ∃ m2 it b, sample7.insert x = some (m2, some it, b) ∧ Reachable m2) ∧
    (∀ a ∈ sample7.data_nodes, ∃ m2, sample7.erase (some a) = some m2 ∧ Reachable m2)) :=
  ⟨reachable_sample7, by decide, insert_and_erase_terminate sample7 reachable_sample7⟩

set_option maxRecDepth 100000 in
/-- C28, failing inputs.  (1) The vector with contents `[1, 2]` and capacity `8`:
`insert(begin(), 3, 9)` takes the in-place path, where the first loop of
`_insert_count_noalloc` tests `_sz - i >= goal` on unsigned integers; with `goal == 0` the
test stays true when `i` exceeds `_sz`, and the loop reads `_ar[_sz - i]` at the wrapped
index `2 ^ 64 - 1`, outside the array.  (2) The empty vector with capacity `1`:
`insert(begin(), 2, 9)` constructs two elements in an array of one cell.  In both cases the
behaviour is undefined; with counts that fit (`2` in the first case, `1` in the second) the
result is as the claim states. -/
theorem vector_insert_count_undefined :
    ((vector.of_list [1, 2, 3, 4, 5]).bind (vector.pop_n 3)).map
      (fun v => (v.contents, v.size, v.capacity)) = some (some [1, 2], 2, 8) ∧
    (((vector.of_list [1, 2, 3, 4, 5]).bind (vector.pop_n 3)).bind
      (fun v => v.insert_count 0 3 9)).isNone = true ∧
    (((vector.of_list [1, 2, 3, 4, 5]).bind (vector.pop_n 3)).bind
      (fun v => v.insert_count 0 2 9)).map (fun v => (v.contents, v.size)) =
      some (some [9, 9, 1, 2], 4) ∧
    ((vector.of_list [1]).bind (vector.pop_n 1)).map
      (fun v => (v.contents, v.size, v.capacity)) = some (some [], 0, 1) ∧
    (((vector.of_list [1]).bind (vector.pop_n 1)).bind
      (fun v => v.insert_count 0 2 9)).isNone = true ∧
    (((vector.of_list [1]).bind (vector.pop_n 1)).bind
      (fun v => v.insert_count 0 1 9)).map (fun v => (v.contents, v.size)) =
      some (some [9], 1) := by
  decide

/-- C29: on a reachable state with at least two elements, for a data node `p` with two
non-null children and the neighbour `t` that `erase` selects, `_swap_nodes(p, t)` returns a
state whose tree is the old one with `p` and `t` exchanged in place and colour, both when `t`
is the right child of `p` (empty `rs`) or its left child and when it lies deeper in the right
subtree; all nodes of the tree, `p` and `t` included, keep their payloads. -/
theorem swap_nodes_exchanges_places (m : map K V) (h : Reachable m) (hsz : 2 ≤ m.size)
    (p : Nat) (n : node_type K V) (hn : m.mem p = some n) (hp : p ∈ m.data_nodes)
    (hl : n.l ≠ none) (hr : n.r ≠ none) :
    ∃ (t : Nat) (m2 : map K V) (T T2 : tree K V) (q : List (frame K V)),
      map.erase_neighbour m (some p) = some (some t) ∧
      map._swap_nodes m (some p) (some t) = some m2 ∧ Rep m T ∧ Rep m2 T2 ∧
      ((∃ rs cP ct xP xt A TR, AllL rs ∧
          T = fill (rs ++ .R p cP (some xP) A :: q) (.node t ct (some xt) .nil TR) ∧
          T2 = fill (rs ++ .R t cP (some xt) A :: q) (.node p ct (some xP) .nil TR)) ∨
        (∃ cP ct xP xt A B,
          T = fill q (.node p cP (some xP) (.node t ct (some xt) A .nil) B) ∧
          T2 = fill q (.node t cP (some xt) (.node p ct (some xP) A .nil) B))) ∧
      (∀ b ∈ m.nodes, b ∈ m2.nodes ∧ m2.payload b = m.payload b) := by
  obtain ⟨T, hI⟩ := h.inv
  obtain ⟨t, m2, T2, q, e1, -, -, e2, r2, hshape, hpay, -⟩ :=
    swap_nodes_spec hI hsz hn hp hl hr
  exact ⟨t, m2, T, T2, q, e1, e2, hI.1, r2, hshape, hpay⟩

set_option maxRecDepth 100000 in
theorem swap_nodes_exchanges_places_witness :
    Reachable sample7 ∧ 2 ≤ sample7.size ∧
    sample7.mem 2 =
      some { color := black, val := some (5, 50), l := some 3, r := some 4, parent := none } ∧
    2 ∈ sample7.data_nodes ∧
    ∃ (t : Nat) (m2 : map Nat Nat) (T T2 : tree Nat Nat) (q : List (frame Nat Nat)),
      map.erase_neighbour sample7 (some 2) = some (some t) ∧
      map._swap_nodes sample7 (some 2) (some t) = some m2 ∧ Rep sample7 T ∧ Rep m2 T2 ∧
      ((∃ rs cP ct xP xt A TR, AllL rs ∧
          T = fill (rs ++ .R 2 cP (some xP) A :: q) (.node t ct (some xt) .nil TR) ∧
          T2 = fill (rs ++ .R t cP (some xt) A :: q) (.node 2 ct (some xP) .nil TR)) ∨
        (∃ cP ct xP xt A B,
          T = fill q (.node 2 cP (some xP) (.node t ct (some xt) A .nil) B) ∧
          T2 = fill q (.node t cP (some xt) (.node 2 ct (some xP) A .nil) B))) ∧
      (∀ b ∈ sample7.nodes, b ∈ m2.nodes ∧ m2.payload b = sample7.payload b) :=
  ⟨reachable_sample7, by decide, by rfl, by decide,
    swap_nodes_exchanges_places sample7 reachable_sample7 (by decide) 2 _ (by rfl) (by decide)
      (by simp) (by simp)⟩

/-- C32: on a reachable state with at least two elements, for a data node `p` with two
non-null children, `erase` finds the neighbour `t` and `_swap_nodes(p, t)` returns a state
`m1` in which `p` has at most one non-null child (and the size is unchanged, so the `clear`
branch is not taken).  The self-call `erase(iterator(p))` on `m1` therefore returns without a
further self-call (it returns with fuel `1`), and `erase` on the original state returns the
same state with one self-call (fuel `2`). -/
theorem erase_recurses_at_most_once (m : map K V) (h : Reachable m) (hsz : 2 ≤ m.size)
    (p : Nat) (n : node_type K V) (hp : p ∈ m.data_nodes) (hn : m.mem p = some n)
    (hl : n.l ≠ none) (hr : n.r ≠ none) :
    ∃ (t : Nat) (m1 : map K V) (n1 : node_type K V) (m2 : map K V),
      map.erase_neighbour m (some p) = some (some t) ∧
      map._swap_nodes m (some p) (some t) = some m1 ∧
      m1.mem p = some n1 ∧ (n1.l = none ∨ n1.r = none) ∧ m1.size = m.size ∧
      map.erase_rec 1 m1 (some p) = some m2 ∧ map.erase_rec 2 m (some p) = some m2 ∧
      m.erase (some p) = some m2 := by
  obtain ⟨T, hI⟩ := h.inv
  obtain ⟨m1, n1, g, m2, hcase, hn1, hnot, -, -, hs1, -, hfuel, he, e2⟩ :=
    erase_call_point hI hsz hp
  rcases hcase with ⟨n0, hn0, h1, -⟩ | ⟨n0, t, hn0, -, -, hnb, hsw⟩
  · rw [hn] at hn0
    simp only [Option.some.injEq] at hn0
    subst hn0
    rcases h1 with h1 | h1
    · exact absurd h1 hl
    · exact absurd h1 hr
  · exact ⟨t, m1, n1, m2, hnb, hsw, hn1, hnot, hs1, e2, (hfuel 0).trans e2, he.trans e2⟩

set_option maxRecDepth 100000 in
theorem erase_recurses_at_most_once_witness :
    Reachable sample7 ∧ 2 ≤ sample7.size ∧ 2 ∈ sample7.data_nodes ∧
    sample7.mem 2 =
      some { color := black, val := some (5, 50), l := some 3, r := some 4, parent := none } ∧
    ∃ (t : Nat) (m1 : map Nat Nat) (n1 : node_type Nat Nat) (m2 : map Nat Nat),
      map.erase_neighbour sample7 (some 2) = some (some t) ∧
      map._swap_nodes sample7 (some 2) (some t) = some m1 ∧
      m1.mem 2 = some n1 ∧ (n1.l = none ∨ n1.r = none) ∧ m1.size = sample7.size ∧
      map.erase_rec 1 m1 (some 2) = some m2 ∧ map.erase_rec 2 sample7 (some 2) = some m2 ∧
      sample7.erase (some 2) = some m2 :=
  ⟨reachable_sample7, by decide, by decide, by rfl,
    erase_recurses_at_most_once sample7 reachable_sample7 (by decide) 2 _ (by decide) (by rfl)
      (by simp) (by simp)⟩

/-- C33, as it holds on the code: in every reachable state every node of the tree without
payload (an end node) is black; and for every data node `p`, each invocation of
`fixDoubleBlack` that `erase(p)` gives rise to, self-calls included, is made either with
`x == _root`, in which case it returns at once, or with a data node as `sibling`.  So a turn
that reads or recolours `sibling` never has an end node or `NULL` there. -/
theorem end_nodes_black_and_fix_sibling_data (m : map K V) (h : Reachable m) :
    (∀ a ∈ m.nodes, m.payload a = none → get_color m (some a) = some black) ∧
    (∀ p ∈ m.data_nodes, ∃ calls, m.erase_calls (some p) = some calls ∧
      ∀ c ∈ calls, map.at_root c = true ∨ map.sibling_is_data c = true) := by
  obtain ⟨T, hI⟩ := h.inv
  exact ⟨fun a ha hv => hI.end_nodes_black ha hv, fun p hp => erase_calls_spec hI hp⟩

set_option maxRecDepth 100000 in
theorem end_nodes_black_and_fix_sibling_data_witness :
    Reachable black3 ∧ black3.nodes = [0, 3, 2, 4, 1] ∧ black3.data_nodes = [3, 2, 4] ∧
    ((∀ a ∈ black3.nodes, black3.payload a = none → get_color black3 (some a) = some black) ∧
    (∀ p ∈ black3.data_nodes, ∃ calls, black3.erase_calls (some p) = some calls ∧
      ∀ c ∈ calls, map.at_root c = true ∨ map.sibling_is_data c = true)) :=
  ⟨reachable_black3, by decide, by decide,
    end_nodes_black_and_fix_sibling_data black3 reachable_black3⟩

set_option maxRecDepth 100000 in
/-- C33, counterexample to the wording "never invoked with an absent node as the sibling":
in the reachable state with the three black data nodes of keys `3`, `5` (the root, address
`2`) and `8`, `erase` of the node of key `3` invokes `fixDoubleBlack` first for the low end
node (address `0`) with parent `2` and sibling `4`, a data node; that turn finds a black
sibling without red child below a black parent and invokes
`fixDoubleBlack(parent, parent->parent, parent->sibling())`, which is made with `x == _root`
and with `NULL` as parent and as sibling. -/
theorem fix_invoked_at_root_without_sibling :
    Reachable black3 ∧ black3.keys = [3, 5, 8] ∧ black3._root = some 2 ∧ 3 ∈ black3.data_nodes ∧
    (black3.erase_calls (some 3)).map
      (fun cs => cs.map (fun c => (c.2.1, c.2.2.1, c.2.2.2, map.at_root c,
        map.sibling_is_data c))) =
      some [(some 0, some 2, some 4, false, true), (some 2, none, none, true, false)] ∧
    (black3.erase (some 3)).map (fun m2 => m2.keys) = some [5, 8] :=
  ⟨reachable_black3, by decide⟩

/-- C34: on a reachable state with at least two elements, `erase(pos)` at a data node `p`
calls `set_parent_target` once, in the state `m1` that is the original state (if `p` has at
most one child) or the state after `_swap_nodes` (otherwise), with `p` and its only child (or
`NULL`) as arguments.  In `m1` the parent of `p` is a live node `g`, so `p->isOnLeft()`
dereferences a non-null parent and the branch `_root = target` is not taken; the call and
the rest of `erase` return a state.  The root of such a map is a data node with two non-null
children. -/
theorem set_parent_target_parent_non_null (m : map K V) (h : Reachable m) (hsz : 2 ≤ m.size)
    (p : Nat) (hp : p ∈ m.data_nodes) :
    (∃ r nr, m._root = some r ∧ m.mem r = some nr ∧ nr.l ≠ none ∧ nr.r ≠ none) ∧
    ∃ (m1 : map K V) (n1 : node_type K V) (g : Nat) (ng : node_type K V) (m2 : map K V),
      ((∃ n, m.mem p = some n ∧ (n.l = none ∨ n.r = none) ∧ m1 = m) ∨
        (∃ n t, m.mem p = some n ∧ n.l ≠ none ∧ n.r ≠ none ∧
          map.erase_neighbour m (some p) = some (some t) ∧
          map._swap_nodes m (some p) (some t) = some m1)) ∧
      m1.mem p = some n1 ∧ (n1.l = none ∨ n1.r = none) ∧
      m.erase (some p) =
        ub_bind (map.set_parent_target m1 (some p) (if n1.l = none then n1.r else n1.l))
          (fun m3 => map.erase_tail m3 (some p)) ∧
      get_parent m1 (some p) = some (some g) ∧ m1.mem g = some ng ∧ some g ≠ none ∧
      isOnLeft m1 (some p) = some (decide (some p = ng.l)) ∧
      m.erase (some p) = some m2 := by
  obtain ⟨T, hI⟩ := h.inv
  obtain ⟨r, nr, hr1, hr2, -, hr3, hr4, -⟩ := hI.root_two_children (by simp [map.size] at hsz; omega)
  refine ⟨⟨r, nr, hr1, hr2, hr3, hr4⟩, ?_⟩
  obtain ⟨m1, n1, g, m2, hcase, hn1, hnot, hpar, ⟨ng, hg⟩, -, hsimp, -, he, e2⟩ :=
    erase_call_point hI hsz hp
  refine ⟨m1, n1, g, ng, m2, hcase, hn1, hnot, ?_, ?_, hg, by simp, isOnLeft_eq hn1 hpar hg,
    he.trans e2⟩
  · rw [he, hsimp 0]
  · rw [get_parent_eq hn1, hpar]

set_option maxRecDepth 100000 in
theorem set_parent_target_parent_non_null_witness :
    Reachable sample7 ∧ 2 ≤ sample7.size ∧ 5 ∈ sample7.data_nodes ∧
    ((∃ r nr, sample7._root = some r ∧ sample7.mem r = some nr ∧ nr.l ≠ none ∧ nr.r ≠ none) ∧
    ∃ (m1 : map Nat Nat) (n1 : node_type Nat Nat) (g : Nat) (ng : node_type Nat Nat)
      (m2 : map Nat Nat),
      ((∃ n, sample7.mem 5 = some n ∧ (n.l = none ∨ n.r = none) ∧ m1 = sample7) ∨
        (∃ n t, sample7.mem 5 = some n ∧ n.l ≠ none ∧ n.r ≠ none ∧
          map.erase_neighbour sample7 (some 5) = some (some t) ∧
          map._swap_nodes sample7 (some 5) (some t) = some m1)) ∧
      m1.mem 5 = some n1 ∧ (n1.l = none ∨ n1.r = none) ∧
      sample7.erase (some 5) =
        ub_bind (map.set_parent_target m1 (some 5) (if n1.l = none then n1.r else n1.l))
          (fun m3 => map.erase_tail m3 (some 5)) ∧
      get_parent m1 (some 5) = some (some g) ∧ m1.mem g = some ng ∧ some g ≠ none ∧
      isOnLeft m1 (some 5) = some (decide (some 5 = ng.l)) ∧
      sample7.erase (some 5) = some m2) :=
  ⟨reachable_sample7, by decide, by decide,
    set_parent_target_parent_non_null sample7 reachable_sample7 (by decide) 5 (by decide)⟩

/-- C35: on a reachable state every `insert` returns (a dereference of `NULL` or of a dead
node would make the model undefined).  When it calls `_insert_fix`, which is for a new key in
a map that then holds more than two elements, every iteration of the loop is entered with a
node `k` whose parent `kp` is a live red node and whose grandparent `kpp` is a live node, and
the body of the loop returns.  The rotations return only when the rotated node and the child
that they dereference are live nodes, so this holds for each rotation the body made. -/
theorem insert_fix_dereferences_live_nodes (m : map K V) (h : Reachable m) (x : K × V) :
    ∃ (m1 : map K V) (it : ptr) (b : Bool) (res : map K V × ptr × Bool),
      map.insert_body (m.brk + 1) m m._root x = some (m1, it, b) ∧ m.insert x = some res ∧
      (b = true → 2 < m1._sz + 1 →
        ∃ iters,
          map._insert_fix_iters (m1.brk + 1) { m1 with _sz := m1._sz + 1 } it = some iters ∧
          ∀ s ∈ iters, ∃ kp kpp ng, get_parent s.1 s.2 = some (some kp) ∧
            get_color s.1 (some kp) = some red ∧
            get_parent s.1 (some kp) = some (some kpp) ∧ s.1.mem kpp = some ng ∧
            (map._insert_fix_body s.1 s.2).isSome = true) ∧
      (∀ (s s2 : map K V) (y : ptr), map._l_rotate s y = some s2 →
        ∃ a c na nc, y = some a ∧ s.mem a = some na ∧ na.r = some c ∧ s.mem c = some nc) ∧
      (∀ (s s2 : map K V) (y : ptr), map._r_rotate s y = some s2 →
        ∃ a c na nc, y = some a ∧ s.mem a = some na ∧ na.l = some c ∧ s.mem c = some nc) := by
  obtain ⟨T, hI⟩ := h.inv
  have hres : ∃ res, m.insert x = some res := by
    rcases insert_spec hI x with ⟨a, w, -, e⟩ | ⟨m2, T2, pre, post, e, -⟩
    · exact ⟨_, e⟩
    · exact ⟨_, e⟩
  obtain ⟨res, hres⟩ := hres
  obtain ⟨m1, it, b, hbody, hfix⟩ := insert_defined hres
  refine ⟨m1, it, b, res, hbody, hres, ?_, fun s s2 y e => l_rotate_defined e,
    fun s s2 y e => r_rotate_defined e⟩
  intro hb hsz
  obtain ⟨m3, h3⟩ := hfix hb hsz
  exact insert_fix_iters_defined _ _ _ _ h3

set_option maxRecDepth 100000 in
theorem insert_fix_dereferences_live_nodes_witness :
    Reachable sample7 ∧
    ∃ (m1 : map Nat Nat) (it : ptr) (b : Bool) (res : map Nat Nat × ptr × Bool),
      map.insert_body (sample7.brk + 1) sample7 sample7._root (6, 60) = some (m1, it, b) ∧
      sample7.insert (6, 60) = some res ∧
      (b = true → 2 < m1._sz + 1 →
        ∃ iters,
          map._insert_fix_iters (m1.brk + 1) { m1 with _sz := m1._sz + 1 } it = some iters ∧
          ∀ s ∈ iters, ∃ kp kpp ng, get_parent s.1 s.2 = some (some kp) ∧
            get_color s.1 (some kp) = some red ∧
            get_parent s.1 (some kp) = some (some kpp) ∧ s.1.mem kpp = some ng ∧
            (map._insert_fix_body s.1 s.2).isSome = true) ∧
      (∀ (s s2 : map Nat Nat) (y : ptr), map._l_rotate s y = some s2 →
        ∃ a c na nc, y = some a ∧ s.mem a = some na ∧ na.r = some c ∧ s.mem c = some nc) ∧
      (∀ (s s2 : map Nat Nat) (y : ptr), map._r_rotate s y = some s2 →
        ∃ a c na nc, y = some a ∧ s.mem a = some na ∧ na.l = some c ∧ s.mem c = some nc) :=
  ⟨reachable_sample7, insert_fix_dereferences_live_nodes sample7 reachable_sample7 (6, 60)⟩

set_option maxRecDepth 100000 in
/-- C36, failing input: the map that holds the keys `1, 3, 4, 5, 7, 8, 9` is assigned to
itself.  `operator=` calls `clear()` before it reads `other`, so `other.begin()` and
`other.end()` are taken from the cleared map and are equal; the insertion loop does not run
and the map ends empty, with size `0`. -/
theorem self_assignment_empties_map :
    sample7.to_list = [(1, 10), (3, 30), (4, 40), (5, 50), (7, 70), (8, 80), (9, 90)] ∧
    sample7.size = 7 ∧
    (map.assign_self sample7).map (fun m => (m.to_list, m.size)) = some ([], 0) := by
  decide

set_option maxRecDepth 100000 in
/-- C37, failing input: the vector built by three calls of `push_back` and then cleared is
empty with capacity `4`.  On it `insert(begin(), 5, 9)` and `resize(5, 9)` take the branch
`!_sz && _cp` of `insert(pos, count, value)`, which constructs `new_sz = 5` elements in the
array of `4` cells without reallocating: the fifth one lies outside the array and the size
would become `5` with capacity `4`.  With `4` elements the same calls stay inside the
array. -/
theorem vector_empty_branch_overflows :
    ((vector.of_list [1, 2, 3]).bind vector.clear).map
      (fun v => (v.contents, v.size, v.capacity, v._ar.length)) = some (some [], 0, 4, 4) ∧
    (((vector.of_list [1, 2, 3]).bind vector.clear).bind
      (fun v => v.insert_count 0 5 9)).isNone = true ∧
    (((vector.of_list [1, 2, 3]).bind vector.clear).bind
      (fun v => v.resize 5 9)).isNone = true ∧
    (((vector.of_list [1, 2, 3]).bind vector.clear).bind
      (fun v => vector.fill_loop 6 v._ar 0 4 9)).map (fun r => r.2) = some 4 ∧
    (((vector.of_list [1, 2, 3]).bind vector.clear).bind
      (fun v => (vector.fill_loop 6 v._ar 0 4 9).bind (fun r => construct r.1 r.2 9))).isNone
      = true ∧
    (((vector.of_list [1, 2, 3]).bind vector.clear).bind
      (fun v => v.insert_count 0 4 9)).map (fun v => (v.contents, v.size, v.capacity)) =
      some (some [9, 9, 9, 9], 4, 4) ∧
    (((vector.of_list [1, 2, 3]).bind vector.clear).bind
      (fun v => v.resize 4 9)).map (fun v => (v.contents, v.size, v.capacity)) =
      some (some [9, 9, 9, 9], 4, 4) := by
  decide

end ft
